import Mathlib

/-!
# KeePassXC: composite key derivation and the KDBX4 XML reader

A shallow embedding of `src/keys/CompositeKey.cpp` and
`src/format/Kdbx4XmlReader.cpp`, followed by theorems about the embedded code.

Byte strings (`QByteArray`) are lists of natural numbers. Collaborators whose
code is outside the two embedded files (the SHA-256 primitive, the key
derivation function, the hardware challenge-response sources, Qt's text
conversions, the keystream cipher) are taken as arguments.
-/

set_option autoImplicit false

/-! ## Part I. Definitions: `CompositeKey` -/

/-- Byte string, the embedding of `QByteArray`. -/
abbrev QByteArray := List Nat

/-- Modelled from the spec: `CryptoHash` (crypto/CryptoHash.h) is the one
cryptographic hash accumulator: `addData` feeds bytes, and feeding zero bytes is
a no-op; `result` finalises with the hash primitive over everything fed. -/
structure CryptoHash where
  fed : QByteArray
  deriving DecidableEq, Repr

/-- A fresh accumulator, `CryptoHash cryptoHash(CryptoHash::Sha256)`. -/
def CryptoHash.init : CryptoHash := ⟨[]⟩

/-- Feed bytes, `CryptoHash::addData`. -/
def CryptoHash.addData (h : CryptoHash) (data : QByteArray) : CryptoHash :=
  ⟨h.fed ++ data⟩

/-- Finalise, `CryptoHash::result`, with the SHA-256 primitive `sha256`. -/
def CryptoHash.result (sha256 : QByteArray → QByteArray) (h : CryptoHash) : QByteArray :=
  sha256 h.fed

/-- A plain key source (`Key`): it exposes its raw digest through `rawKey()`. -/
structure Key where
  rawKey : QByteArray
  deriving DecidableEq, Repr

/-- The copy made by `Key::clone()`. -/
def Key.clone (k : Key) : Key := ⟨k.rawKey⟩

/-- A challenge-response source (`ChallengeResponseKey`). `respond seed` is
`none` when `challenge(seed)` returns false, and `some r` when it returns true
and the following `rawKey()` returns `r`. -/
structure ChallengeResponseKey where
  respond : QByteArray → Option QByteArray

/-- A key derivation function (`Kdf`): `transform raw result` takes the raw key
and the prior content of the result buffer, and gives the returned flag and the
new content of the buffer. -/
structure Kdf where
  transform : QByteArray → QByteArray → Bool × QByteArray

/-- State of `CompositeKey`: `m_keys` and `m_challengeResponseKeys`. -/
structure CompositeKey where
  m_keys : List Key
  m_challengeResponseKeys : List ChallengeResponseKey

/-- The key built by `CompositeKey::CompositeKey()`. -/
def CompositeKey.empty : CompositeKey := ⟨[], []⟩

/-- Source `CompositeKey::addKey`: append a clone of the key. -/
def CompositeKey.addKey (c : CompositeKey) (key : Key) : CompositeKey :=
  { c with m_keys := c.m_keys ++ [key.clone] }

/-- Source `CompositeKey::addChallengeResponseKey`: append the shared handle. -/
def CompositeKey.addChallengeResponseKey (c : CompositeKey) (key : ChallengeResponseKey) :
    CompositeKey :=
  { c with m_challengeResponseKeys := c.m_challengeResponseKeys ++ [key] }

/-- Outcome of `CompositeKey::challenge`: the returned flag, the content of the
`result` buffer afterwards, and the calls made to the sources, as pairs of a
source's position in `m_challengeResponseKeys` and the seed it received. -/
structure ChallengeOutcome where
  ok : Bool
  result : QByteArray
  calls : List (Nat × QByteArray)
  deriving DecidableEq, Repr

/-- The `for` loop of `CompositeKey::challenge` over the sources still to be
visited; `i` is the position of the first of them, `h` the accumulator, `prior`
the untouched `result` buffer, `calls` the calls made so far. -/
def CompositeKey.challengeLoop (sha256 : QByteArray → QByteArray) (seed prior : QByteArray) :
    List ChallengeResponseKey → Nat → CryptoHash → List (Nat × QByteArray) → ChallengeOutcome
  | [], _, h, calls => ⟨true, h.result sha256, calls⟩
  | key :: rest, i, h, calls =>
    match key.respond seed with
    | none => ⟨false, prior, calls ++ [(i, seed)]⟩
    | some r =>
      CompositeKey.challengeLoop sha256 seed prior rest (i + 1) (h.addData r)
        (calls ++ [(i, seed)])

/-- Source `CompositeKey::challenge(seed, result)`; `prior` is the content of `result`
at the call. -/
def CompositeKey.challenge (sha256 : QByteArray → QByteArray) (c : CompositeKey)
    (seed prior : QByteArray) : ChallengeOutcome :=
  if c.m_challengeResponseKeys.length = 0 then
    ⟨true, [], []⟩
  else
    CompositeKey.challengeLoop sha256 seed prior c.m_challengeResponseKeys 0 CryptoHash.init []

/-- The `for` loop of `CompositeKey::rawKey` over the plain keys. -/
def CompositeKey.feedKeys : List Key → CryptoHash → CryptoHash
  | [], h => h
  | key :: rest, h => CompositeKey.feedKeys rest (h.addData key.rawKey)

/-- Source `CompositeKey::rawKey(masterSeed)`; `none` is the null pointer. The flag
returned by `challenge` is dropped, as in the source. -/
def CompositeKey.rawKey (sha256 : QByteArray → QByteArray) (c : CompositeKey)
    (masterSeed : Option QByteArray) : QByteArray :=
  let cryptoHash := CompositeKey.feedKeys c.m_keys CryptoHash.init
  match masterSeed with
  | some seed =>
    let challengeResult := (c.challenge sha256 seed []).result
    (cryptoHash.addData challengeResult).result sha256
  | none => cryptoHash.result sha256

/-- Source `CompositeKey::transform(kdf, result, masterSeed)`; `prior` is the content
of `result` at the call. -/
def CompositeKey.transform (sha256 : QByteArray → QByteArray) (c : CompositeKey) (kdf : Kdf)
    (prior : QByteArray) (masterSeed : Option QByteArray) : Bool × QByteArray :=
  kdf.transform (c.rawKey sha256 masterSeed) prior

/-! ## Part I. Definitions: the document and the data model of the reader -/

/-- A well-formed XML element as `QXmlStreamReader` delivers it to the reader:
its name, its attributes, the character data that precedes its first child
element (all of its character data when it has no child element), and its child
elements in document order. Character data after a child element is never
looked at by the reader. -/
inductive XmlElement where
  | mk (name : String) (attributes : List (String × String)) (text : String)
      (children : List XmlElement)
  deriving Repr

/-- Element name, `m_xml.name()` at the start of the element. -/
def XmlElement.name : XmlElement → String
  | .mk n _ _ _ => n

/-- Attributes, `m_xml.attributes()` at the start of the element. -/
def XmlElement.attributes : XmlElement → List (String × String)
  | .mk _ a _ _ => a

/-- Character data before the first child element. -/
def XmlElement.text : XmlElement → String
  | .mk _ _ t _ => t

/-- Child elements in document order. -/
def XmlElement.children : XmlElement → List XmlElement
  | .mk _ _ _ c => c

mutual
/-- Number of elements of a subtree. -/
def XmlElement.size : XmlElement → Nat
  | .mk _ _ _ cs => 1 + XmlElement.sizeList cs
/-- Number of elements of a forest. -/
def XmlElement.sizeList : List XmlElement → Nat
  | [] => 0
  | x :: xs => x.size + XmlElement.sizeList xs
end

/-- Source `QXmlStreamAttributes::hasAttribute`. -/
def XmlElement.hasAttribute (x : XmlElement) (key : String) : Bool :=
  x.attributes.any (fun a => a.1 = key)

/-- Source `QXmlStreamAttributes::value`: the value of the first attribute of that
name, the empty string when there is none. -/
def XmlElement.attr (x : XmlElement) (key : String) : String :=
  match x.attributes.find? (fun a => a.1 = key) with
  | some a => a.2
  | none => ""

/-- ASCII lower-casing of a text, for the `Qt::CaseInsensitive` comparisons with
ASCII literals. -/
def asciiLower (s : String) : String :=
  String.mk (s.data.map (fun c => if 'A' ≤ c ∧ c ≤ 'Z' then Char.ofNat (c.toNat + 32) else c))

/-- Source `str.compare(lit, Qt::CaseInsensitive) == 0` for an ASCII literal `lit`. -/
def eqIgnoreCase (str lit : String) : Bool :=
  asciiLower str = asciiLower lit

/-- Modelled from the spec: `Uuid` (core/Uuid.h), the 16-byte identity of groups
and entries; the null UUID is the sentinel of sixteen zero bytes. -/
structure Uuid where
  data : QByteArray
  deriving DecidableEq, Repr

/-- Source `Uuid::Length`. -/
def Uuid.Length : Nat := 16

/-- The UUID built by `Uuid()`: sixteen zero bytes. -/
def Uuid.null : Uuid := ⟨List.replicate 16 0⟩

/-- Source `Uuid::isNull`: every byte is zero. -/
def Uuid.isNull (u : Uuid) : Bool :=
  u.data.all (fun b => b = 0)

/-- Modelled from the spec: a date and time (`QDateTime`) as the reader builds
it: the null value of `QDateTime()`, the instant `0001-01-01T00:00:00 UTC` plus
a number of seconds, the value parsed from ISO-8601 text, or the current time
(`QDateTime::currentDateTimeUtc()`). -/
inductive QDateTime where
  | null
  | year1PlusSecs (secs : Int)
  | iso (text : String)
  | current
  deriving DecidableEq, Repr

/-- Source `QDateTime::isNull`. -/
def QDateTime.isNull : QDateTime → Bool
  | .null => true
  | _ => false

/-- A colour (`QColor`): unset (the invalid colour built by `QColor()`) or red,
green and blue parts. -/
inductive QColor where
  | unset
  | rgb (r g b : Int)
  deriving DecidableEq, Repr

/-- Modelled from the spec: `TimeInfo` (core/TimeInfo.h): creation,
modification, access and expiry timestamps, expires flag, usage counter and
location-changed timestamp. -/
structure TimeInfo where
  lastModificationTime : QDateTime
  creationTime : QDateTime
  lastAccessTime : QDateTime
  expiryTime : QDateTime
  expires : Bool
  usageCount : Int
  locationChanged : QDateTime
  deriving DecidableEq, Repr

/-- The value built by `TimeInfo()`: every timestamp is the current time. -/
def TimeInfo.init : TimeInfo :=
  ⟨.current, .current, .current, .current, false, 0, .current⟩

/-- The tri-state `Group::TriState`. -/
inductive TriState where
  | Inherit
  | Enable
  | Disable
  deriving DecidableEq, Repr

/-- Where a group hangs: nowhere (fresh object), under a parent group
(`Group::setParent(Group*)`), or as root of the database
(`Group::setParent(Database*)`). -/
inductive GroupParent where
  | none
  | group (p : Nat)
  | database
  deriving DecidableEq, Repr

/-- Modelled from the spec: `Group` (core/Group.h), here `DbGroup` since Mathlib
owns the name `Group`. Groups live in the heap of
the reader state and are named by their position there (the embedding of
`Group*`). The fields up to `m_searchingEnabled` are the group's data,
`m_lastTopVisibleEntry` names an entry, the next three fields are the tree
links, and `deleted` records `delete`. -/
structure DbGroup where
  m_uuid : Uuid
  m_name : String
  m_notes : String
  m_iconNumber : Int
  m_customIcon : Uuid
  m_timeInfo : TimeInfo
  m_isExpanded : Bool
  m_defaultAutoTypeSequence : String
  m_autoTypeEnabled : TriState
  m_searchingEnabled : TriState
  m_lastTopVisibleEntry : Option Nat
  m_parent : GroupParent
  m_children : List Nat
  m_entries : List Nat
  m_updateTimeinfo : Bool
  deleted : Bool
  deriving DecidableEq, Repr

/-- The object built by `new Group()`: null UUID, default icon, no parent, no
child, no entry. -/
def DbGroup.init : DbGroup :=
  { m_uuid := Uuid.null, m_name := "", m_notes := "", m_iconNumber := 48,
    m_customIcon := Uuid.null, m_timeInfo := TimeInfo.init, m_isExpanded := true,
    m_defaultAutoTypeSequence := "", m_autoTypeEnabled := .Inherit,
    m_searchingEnabled := .Inherit, m_lastTopVisibleEntry := none, m_parent := .none,
    m_children := [], m_entries := [], m_updateTimeinfo := true, deleted := false }

/-- Source `Group::setIcon(int)`: a standard icon replaces a custom one. -/
def DbGroup.setIconNumber (g : DbGroup) (iconNumber : Int) : DbGroup :=
  { g with m_iconNumber := iconNumber, m_customIcon := Uuid.null }

/-- Source `Group::setIcon(const Uuid&)`: a custom icon resets the standard one. -/
def DbGroup.setIconUuid (g : DbGroup) (uuid : Uuid) : DbGroup :=
  { g with m_iconNumber := 0, m_customIcon := uuid }

/-- Modelled from the spec: `Group::copyDataFrom`: the data fields and the last
top visible entry are copied from `other`; the tree links and the update flag
of the target are kept. -/
def DbGroup.copyDataFrom (g other : DbGroup) : DbGroup :=
  { g with m_uuid := other.m_uuid, m_name := other.m_name, m_notes := other.m_notes,
           m_iconNumber := other.m_iconNumber, m_customIcon := other.m_customIcon,
           m_timeInfo := other.m_timeInfo, m_isExpanded := other.m_isExpanded,
           m_defaultAutoTypeSequence := other.m_defaultAutoTypeSequence,
           m_autoTypeEnabled := other.m_autoTypeEnabled,
           m_searchingEnabled := other.m_searchingEnabled,
           m_lastTopVisibleEntry := other.m_lastTopVisibleEntry }

/-- An auto-type association (`AutoTypeAssociations::Association`). -/
structure Association where
  window : String
  sequence : String
  deriving DecidableEq, Repr

/-- Modelled from the spec: `Entry` (core/Entry.h). Entries live in the heap of
the reader state and are named by their position there (the embedding of
`Entry*`). `m_attributes` maps an attribute name to its value and protected
flag, `m_attachments` an attachment name to its bytes, both with unique names;
`m_history` lists the snapshots, `m_group` is the owning group. -/
structure Entry where
  m_uuid : Uuid
  m_iconNumber : Int
  m_customIcon : Uuid
  m_foregroundColor : QColor
  m_backgroundColor : QColor
  m_overrideUrl : String
  m_tags : String
  m_timeInfo : TimeInfo
  m_autoTypeEnabled : Bool
  m_autoTypeObfuscation : Int
  m_defaultAutoTypeSequence : String
  m_attributes : List (String × String × Bool)
  m_attachments : List (String × QByteArray)
  m_autoTypeAssociations : List Association
  m_history : List Nat
  m_group : Option Nat
  m_updateTimeinfo : Bool
  deleted : Bool
  deriving DecidableEq, Repr

/-- The default attributes, present with an empty value in every entry
(`EntryAttributes::DefaultAttributes`). -/
def EntryAttributes.DefaultAttributes : List (String × String × Bool) :=
  [("Title", "", false), ("UserName", "", false), ("Password", "", false),
   ("URL", "", false), ("Notes", "", false)]

/-- The object built by `new Entry()`. -/
def Entry.init : Entry :=
  { m_uuid := Uuid.null, m_iconNumber := 0, m_customIcon := Uuid.null,
    m_foregroundColor := .unset, m_backgroundColor := .unset, m_overrideUrl := "",
    m_tags := "", m_timeInfo := TimeInfo.init, m_autoTypeEnabled := true,
    m_autoTypeObfuscation := 0, m_defaultAutoTypeSequence := "",
    m_attributes := EntryAttributes.DefaultAttributes, m_attachments := [],
    m_autoTypeAssociations := [], m_history := [], m_group := none,
    m_updateTimeinfo := true, deleted := false }

/-- Set a key of an ordered map with unique keys: the value of an existing key
is replaced in place, a new key is appended. -/
def mapSet {κ α : Type} [DecidableEq κ] (key : κ) (value : α) : List (κ × α) → List (κ × α)
  | [] => [(key, value)]
  | (k, v) :: rest => if k = key then (k, value) :: rest else (k, v) :: mapSet key value rest

/-- Look a key up in an ordered map. -/
def mapGet {κ α : Type} [DecidableEq κ] (key : κ) : List (κ × α) → Option α
  | [] => none
  | (k, v) :: rest => if k = key then some v else mapGet key rest

/-- Source `EntryAttributes::hasKey`. -/
def Entry.hasAttribute (e : Entry) (key : String) : Bool :=
  (mapGet key e.m_attributes).isSome

/-- Source `EntryAttributes::value`: the empty string for an absent key. -/
def Entry.attributeValue (e : Entry) (key : String) : String :=
  match mapGet key e.m_attributes with
  | some v => v.1
  | none => ""

/-- Source `EntryAttributes::set(key, value, protect)`. -/
def Entry.setAttribute (e : Entry) (key value : String) (protect : Bool) : Entry :=
  { e with m_attributes := mapSet key (value, protect) e.m_attributes }

/-- Source `EntryAttachments::hasKey`. -/
def Entry.hasAttachment (e : Entry) (key : String) : Bool :=
  (mapGet key e.m_attachments).isSome

/-- Source `EntryAttachments::set(key, value)`. -/
def Entry.setAttachment (e : Entry) (key : String) (value : QByteArray) : Entry :=
  { e with m_attachments := mapSet key value e.m_attachments }

/-- Source `Entry::setIcon(int)`. -/
def Entry.setIconNumber (e : Entry) (iconNumber : Int) : Entry :=
  { e with m_iconNumber := iconNumber, m_customIcon := Uuid.null }

/-- Source `Entry::setIcon(const Uuid&)`. -/
def Entry.setIconUuid (e : Entry) (uuid : Uuid) : Entry :=
  { e with m_iconNumber := 0, m_customIcon := uuid }

/-- Modelled from the spec: `Entry::copyDataFrom`: the data fields, the
attributes, the attachments and the auto-type associations are copied from
`other`; the history, the owning group and the identity of the target are
kept, and the update flag is switched on again at the end. -/
def Entry.copyDataFrom (e other : Entry) : Entry :=
  { e with m_uuid := other.m_uuid, m_iconNumber := other.m_iconNumber,
           m_customIcon := other.m_customIcon,
           m_foregroundColor := other.m_foregroundColor,
           m_backgroundColor := other.m_backgroundColor,
           m_overrideUrl := other.m_overrideUrl, m_tags := other.m_tags,
           m_timeInfo := other.m_timeInfo, m_autoTypeEnabled := other.m_autoTypeEnabled,
           m_autoTypeObfuscation := other.m_autoTypeObfuscation,
           m_defaultAutoTypeSequence := other.m_defaultAutoTypeSequence,
           m_attributes := other.m_attributes, m_attachments := other.m_attachments,
           m_autoTypeAssociations := other.m_autoTypeAssociations,
           m_updateTimeinfo := true }

/-- A tombstone (`DeletedObject`). -/
structure DeletedObject where
  uuid : Uuid
  deletionTime : QDateTime
  deriving DecidableEq, Repr

/-- Modelled from the spec: `Metadata` (core/Metadata.h), the metadata record of
the vault, with the fields the reader sets. Groups are named by their position
in the heap. During a decode `m_updateDatetime` is off, so a setter stores its
value and touches nothing else. -/
structure Metadata where
  generator : String
  name : String
  nameChanged : QDateTime
  description : String
  descriptionChanged : QDateTime
  defaultUserName : String
  defaultUserNameChanged : QDateTime
  maintenanceHistoryDays : Int
  color : QColor
  masterKeyChanged : QDateTime
  masterKeyChangeRec : Int
  masterKeyChangeForce : Int
  protectTitle : Bool
  protectUsername : Bool
  protectPassword : Bool
  protectUrl : Bool
  protectNotes : Bool
  customIcons : List (Uuid × QByteArray)
  recycleBinEnabled : Bool
  recycleBin : Option Nat
  recycleBinChanged : QDateTime
  entryTemplatesGroup : Option Nat
  entryTemplatesGroupChanged : QDateTime
  lastSelectedGroup : Option Nat
  lastTopVisibleGroup : Option Nat
  historyMaxItems : Int
  historyMaxSize : Int
  customFields : List (String × String)
  settingsChanged : QDateTime
  updateDatetime : Bool
  deriving DecidableEq, Repr

/-- The record built by `Metadata()`. -/
def Metadata.init : Metadata :=
  { generator := "KeePassXC", name := "", nameChanged := .current, description := "",
    descriptionChanged := .current, defaultUserName := "",
    defaultUserNameChanged := .current, maintenanceHistoryDays := 365, color := .unset,
    masterKeyChanged := .current, masterKeyChangeRec := -1, masterKeyChangeForce := -1,
    protectTitle := false, protectUsername := false, protectPassword := true,
    protectUrl := false, protectNotes := false, customIcons := [],
    recycleBinEnabled := true, recycleBin := none, recycleBinChanged := .current,
    entryTemplatesGroup := none, entryTemplatesGroupChanged := .current,
    lastSelectedGroup := none, lastTopVisibleGroup := none, historyMaxItems := 10,
    historyMaxSize := 6291456, customFields := [], settingsChanged := .current,
    updateDatetime := true }

/-- Collaborators of the reader outside the embedded file: Qt's conversions,
the decompressor, the keystream cipher and the random UUID source. -/
structure Env where
  /-- The bytes of `QByteArray::fromBase64(text.toLatin1())`. -/
  fromBase64 : String → QByteArray
  /-- The value of `QString::toInt(&ok)` in base 10; `none` when `ok` is false. -/
  toInt : String → Option Int
  /-- The value of `QString::toInt(&ok, 16)`; `none` when `ok` is false. -/
  toIntHex : String → Option Int
  /-- The text of `QString::fromUtf8`. -/
  fromUtf8 : QByteArray → String
  /-- Whether `QDateTime::fromString(text, Qt::ISODate)` is valid. -/
  isIsoDate : String → Bool
  /-- Reading a gzip stream to its end (`QtIOCompressor` with
  `Tools::readAllFromDevice`): the flag returned and the bytes read. -/
  decompress : QByteArray → Bool × QByteArray
  /-- The keystream cipher, `KeePass2RandomStream::process` and
  `processInPlace`: from the state of the cipher and a ciphertext, the error
  text (left) on failure or the plaintext (right) on success, and the next state
  of the cipher. -/
  process : QByteArray → QByteArray → (String ⊕ QByteArray) × QByteArray
  /-- The value of the n-th call of `Uuid::random()` in a decode. -/
  randomUuid : Nat → Uuid
  /-- The constant `DatabaseIcons::IconCount`. -/
  IconCount : Int
  /-- The order in which a `QHash` iteration visits the items of
  `m_binaryMap`, given here in insertion order. -/
  hashOrder : List (String × Nat × String) → List (String × Nat × String)

/-- State of a decode: the members of `Kdbx4XmlReader`, the cursor and error
state of `m_xml`, the objects the members point to (the heap of groups, the heap
of entries, the database with its metadata and the keystream cipher), and two
records kept for the statements: the ciphertexts handed to the cipher, the number
of `Uuid::random()` calls, for each call of `getGroup` and of `getEntry` with a
non-null UUID that UUID and the object returned, and for each `Group` element
and each `Entry` element outside history that was merged into the registry the
UUID and the object it was merged into. -/
structure Reader where
  /-- The cursor of `m_xml`: for each open element from the innermost outwards, the child
  elements not read yet. -/
  pending : List (List XmlElement)
  /-- The value of `m_xml.hasError()`. -/
  xmlError : Bool
  m_error : Bool
  m_errorStr : String
  m_strictMode : Bool
  m_headerHash : QByteArray
  m_binaryPool : List (String × QByteArray)
  /-- The member `m_binaryMap`: pool id, entry, attachment name, in insertion order. -/
  m_binaryMap : List (String × Nat × String)
  m_groups : List (Uuid × Nat)
  m_entries : List (Uuid × Nat)
  m_tmpParent : Nat
  /-- The member `m_randomStream`: `none` is the null pointer, else the cipher's state. -/
  m_randomStream : Option QByteArray
  /-- Set when `m_randomStream` is dereferenced while null, which
  `parseEntryBinary` does for a protected inline value. The program has no
  defined behaviour from there on: a state with this flag set is the state of no
  run of the program, and a result of the reader with this flag set stands for
  a run that does not return. -/
  nullDeref : Bool
  groups : List DbGroup
  entries : List Entry
  /-- The value of `m_db->rootGroup()`. -/
  rootGroup : Nat
  deletedObjects : List DeletedObject
  m_meta : Metadata
  cipherLog : List QByteArray
  randomCalls : Nat
  groupLog : List (Uuid × Nat)
  entryLog : List (Uuid × Nat)
  groupDefs : List (Uuid × Nat)
  entryDefs : List (Uuid × Nat)
  deriving Repr

/-- Source `Kdbx4XmlReader::raiseError`. -/
def Reader.raiseError (st : Reader) (errorMessage : String) : Reader :=
  { st with m_error := true, m_errorStr := errorMessage }

/-- The XML reader raises its error. -/
@[simp] def Reader.setXmlError (st : Reader) : Reader :=
  { st with xmlError := true }

/-- Move the cursor of the XML reader. -/
@[simp] def Reader.setPending (st : Reader) (q : List (List XmlElement)) : Reader :=
  { st with pending := q }

/-- Assign `m_headerHash`. -/
@[simp] def Reader.setHeaderHash (st : Reader) (v : QByteArray) : Reader :=
  { st with m_headerHash := v }

/-- Assign `m_binaryPool`. -/
@[simp] def Reader.setBinaryPool (st : Reader) (v : List (String × QByteArray)) : Reader :=
  { st with m_binaryPool := v }

/-- Append items to `m_binaryMap` (`insertMulti`). -/
@[simp] def Reader.addBinaryRefs (st : Reader) (v : List (String × Nat × String)) : Reader :=
  { st with m_binaryMap := st.m_binaryMap ++ v }

/-- Record a tombstone, `m_db->addDeletedObject`. -/
@[simp] def Reader.addDeletedObject (st : Reader) (delObj : DeletedObject) : Reader :=
  { st with deletedObjects := st.deletedObjects ++ [delObj] }

/-- Record that the null `m_randomStream` was dereferenced: the run of the
program ends here without a result, see `Reader.nullDeref`. -/
@[simp] def Reader.setNullDeref (st : Reader) : Reader :=
  { st with nullDeref := true }

/-- Assign the root pointer of the database. -/
@[simp] def Reader.setRootPtr (st : Reader) (p : Nat) : Reader :=
  { st with rootGroup := p }

/-- Enter a group in the registry, `m_groups.insert(uuid, group)`, and record
the lookup. -/
@[simp] def Reader.registerGroup (st : Reader) (uuid : Uuid) (p : Nat) : Reader :=
  { st with m_groups := mapSet uuid p st.m_groups, groupLog := st.groupLog ++ [(uuid, p)] }

/-- Record a lookup of the group registry. -/
@[simp] def Reader.logGroup (st : Reader) (uuid : Uuid) (p : Nat) : Reader :=
  { st with groupLog := st.groupLog ++ [(uuid, p)] }

/-- Enter an entry in the registry, `m_entries.insert(uuid, entry)`, and record
the lookup. -/
@[simp] def Reader.registerEntry (st : Reader) (uuid : Uuid) (p : Nat) : Reader :=
  { st with m_entries := mapSet uuid p st.m_entries, entryLog := st.entryLog ++ [(uuid, p)] }

/-- Record a lookup of the entry registry. -/
@[simp] def Reader.logEntry (st : Reader) (uuid : Uuid) (p : Nat) : Reader :=
  { st with entryLog := st.entryLog ++ [(uuid, p)] }

/-- Record the merge of a defining `Group` element into the registry. -/
@[simp] def Reader.defGroup (st : Reader) (uuid : Uuid) (p : Nat) : Reader :=
  { st with groupDefs := st.groupDefs ++ [(uuid, p)] }

/-- Record the merge of a defining `Entry` element into the registry. -/
@[simp] def Reader.defEntry (st : Reader) (uuid : Uuid) (p : Nat) : Reader :=
  { st with entryDefs := st.entryDefs ++ [(uuid, p)] }

/-- Source `Kdbx4XmlReader::hasError`. -/
def Reader.hasError (st : Reader) : Bool :=
  st.m_error || st.xmlError

/-- Source `Kdbx4XmlReader::errorString`; the text built for an XML error is
abbreviated. -/
def Reader.errorString (st : Reader) : String :=
  if st.m_error then st.m_errorStr
  else if st.xmlError then "XML error"
  else ""

/-- Source `Uuid::random()`: the next value of the random source. -/
def Reader.randomUuid (env : Env) (st : Reader) : Uuid × Reader :=
  (env.randomUuid st.randomCalls, { st with randomCalls := st.randomCalls + 1 })

/-- Apply `f` to the group at `p`. -/
def Reader.updGroup (st : Reader) (p : Nat) (f : DbGroup → DbGroup) : Reader :=
  match st.groups[p]? with
  | some g => { st with groups := st.groups.set p (f g) }
  | none => st

/-- Apply `f` to the entry at `p`. -/
def Reader.updEntry (st : Reader) (p : Nat) (f : Entry → Entry) : Reader :=
  match st.entries[p]? with
  | some e => { st with entries := st.entries.set p (f e) }
  | none => st

/-- The group at `p`. -/
def Reader.group (st : Reader) (p : Nat) : DbGroup :=
  st.groups.getD p DbGroup.init

/-- The entry at `p`. -/
def Reader.entry (st : Reader) (p : Nat) : Entry :=
  st.entries.getD p Entry.init

/-- Source `new Group()`: the new object's position and the state that holds it. -/
def Reader.newGroup (st : Reader) : Nat × Reader :=
  (st.groups.length, { st with groups := st.groups ++ [DbGroup.init] })

/-- Source `new Entry()`. -/
def Reader.newEntry (st : Reader) : Nat × Reader :=
  (st.entries.length, { st with entries := st.entries ++ [Entry.init] })

/-- Remove `c` from the child list of the group `c` hangs under
(`Group::cleanupParent`). -/
def Reader.cleanupParent (st : Reader) (c : Nat) : Reader :=
  match (st.group c).m_parent with
  | .group q => st.updGroup q (fun g => { g with m_children := g.m_children.filter (· ≠ c) })
  | _ => st

/-- Modelled from the spec: `Group::setParent(Group*)`: the group leaves the
child list of its former parent and is appended to the child list of `p`. -/
def Reader.setParent (st : Reader) (c p : Nat) : Reader :=
  let st1 := st.cleanupParent c
  let st2 := st1.updGroup c (fun g => { g with m_parent := .group p })
  st2.updGroup p (fun g => { g with m_children := g.m_children ++ [c] })

/-- Modelled from the spec: `Entry::setGroup(Group*)`: nothing when the entry is
already in `p`; else the entry leaves the entry list of its former group and is
appended to the entry list of `p`. -/
def Reader.setGroup (st : Reader) (e p : Nat) : Reader :=
  if (st.entry e).m_group = some p then st
  else
    let st1 := match (st.entry e).m_group with
      | some q => st.updGroup q (fun g => { g with m_entries := g.m_entries.filter (· ≠ e) })
      | none => st
    let st2 := st1.updEntry e (fun x => { x with m_group := some p })
    st2.updGroup p (fun g => { g with m_entries := g.m_entries ++ [e] })

/-- Modelled from the spec: `Database::setRootGroup`: the group becomes the root
of the database and leaves the child list of its former parent. -/
def Reader.setRootGroup (st : Reader) (p : Nat) : Reader :=
  let st1 := st.cleanupParent p
  let st2 := st1.updGroup p (fun g => { g with m_parent := .database })
  st2.setRootPtr p

/-- The statement `delete group` for a group without parent, children and
entries. -/
def Reader.deleteGroup (st : Reader) (p : Nat) : Reader :=
  st.updGroup p (fun g => { g with deleted := true })

/-- The statement `delete entry` for an entry without group and history. -/
def Reader.deleteEntry (st : Reader) (p : Nat) : Reader :=
  st.updEntry p (fun e => { e with deleted := true })

/-- Source `Kdbx4XmlReader::readString`, that is `m_xml.readElementText()` at the start
of element `x`: the character data up to the end of the element; a child element
makes the XML reader raise its error and return the text before it. -/
def readString (x : XmlElement) (st : Reader) : String × Reader :=
  if st.xmlError then ("", st)
  else if x.children.isEmpty then (x.text, st)
  else (x.text, st.setXmlError)

/-- Source `Kdbx4XmlReader::readBool`. -/
def readBool (x : XmlElement) (st : Reader) : Bool × Reader :=
  let (str, st1) := readString x st
  if eqIgnoreCase str "True" then (true, st1)
  else if eqIgnoreCase str "False" then (false, st1)
  else if str.length = 0 then (false, st1)
  else (false, st1.raiseError "Invalid bool value")

/-- Source `Kdbx4XmlReader::readNumber`; `toInt` gives 0 when it fails. -/
def readNumber (env : Env) (x : XmlElement) (st : Reader) : Int × Reader :=
  let (str, st1) := readString x st
  match env.toInt str with
  | some result => (result, st1)
  | none => (0, st1.raiseError "Invalid number value")

/-- Source `Kdbx4XmlReader::readBinary`. -/
def readBinary (env : Env) (x : XmlElement) (st : Reader) : QByteArray × Reader :=
  let (str, st1) := readString x st
  (env.fromBase64 str, st1)

/-- Source `Kdbx4XmlReader::readUuid`. -/
def readUuid (env : Env) (x : XmlElement) (st : Reader) : Uuid × Reader :=
  let (uuidBin, st1) := readBinary env x st
  if uuidBin.isEmpty then (Uuid.null, st1)
  else if uuidBin.length ≠ Uuid.Length then
    if st1.m_strictMode then (Uuid.null, st1.raiseError "Invalid uuid value")
    else (Uuid.null, st1)
  else (⟨uuidBin⟩, st1)

/-- Source `Kdbx4XmlReader::readCompressedBinary`. -/
def readCompressedBinary (env : Env) (x : XmlElement) (st : Reader) : QByteArray × Reader :=
  let (rawData, st1) := readBinary env x st
  let (ok, result) := env.decompress rawData
  if ok then (result, st1) else (result, st1.raiseError "Unable to decompress binary")

/-- One of the characters `[A-Za-z0-9+/]`. -/
def isBase64Char (c : Char) : Bool :=
  c.isAlphanum || c = '+' || c = '/'

/-- The body of `b64regex`: groups of four base64 characters, then at most one
group closed by one or two `=`. -/
def matchBase64Groups : List Char → Bool
  | [] => true
  | a :: b :: c :: d :: rest =>
    (isBase64Char a && isBase64Char b && isBase64Char c && isBase64Char d
        && matchBase64Groups rest)
      || (rest.isEmpty && isBase64Char a && isBase64Char b
        && ((c = '=' && d = '=') || (isBase64Char c && d = '=')))
  | _ => false

/-- Source `b64regex.match(str).hasMatch()`; the closing `$` also matches before a
final line feed. -/
def matchBase64Regex (str : String) : Bool :=
  matchBase64Groups str.data
    || (str.data.getLast? = some '\n' && matchBase64Groups str.data.dropLast)

/-- Source `Endian::bytesToSizedInt<quint64>(bytes, KeePass2::BYTEORDER)`: the bytes
read least significant first. -/
def bytesToUInt64 : QByteArray → Nat
  | [] => 0
  | b :: rest => (b % 256 + 256 * bytesToUInt64 rest) % 2 ^ 64

/-- The conversion of a `quint64` to `qint64`. -/
def toInt64 (v : Nat) : Int :=
  if v % 2 ^ 64 < 2 ^ 63 then (v % 2 ^ 64 : Nat) else (v % 2 ^ 64 : Nat) - 2 ^ 64

/-- Source `bytes.leftJustified(8, 0, true).left(8)`: cut or zero-filled to 8 bytes. -/
def leftJustified8 (bytes : QByteArray) : QByteArray :=
  (bytes ++ List.replicate 8 0).take 8

/-- Source `Kdbx4XmlReader::readDateTime`. -/
def readDateTime (env : Env) (x : XmlElement) (st : Reader) : QDateTime × Reader :=
  let (str, st1) := readString x st
  if matchBase64Regex str then
    let secsBytes := leftJustified8 (env.fromBase64 str)
    let secs := toInt64 (bytesToUInt64 secsBytes)
    (.year1PlusSecs secs, st1)
  else if env.isIsoDate str then (.iso str, st1)
  else if st1.m_strictMode then (.current, st1.raiseError "Invalid date time value")
  else (.current, st1)

/-- Source `colorStr.mid(pos, 2)`. -/
def mid2 (s : String) (pos : Nat) : String :=
  String.mk ((s.data.drop pos).take 2)

/-- One round of the loop of `readColor`: the part at index `i`, `none` when it
is rejected. -/
def readColorPart (env : Env) (colorStr : String) (i : Nat) : Option Int :=
  match env.toIntHex (mid2 colorStr (1 + 2 * i)) with
  | some rgbPart => if rgbPart > 255 then none else some rgbPart
  | none => none

/-- The range check of `QColor::setRed`, `setGreen` and `setBlue`: a value
outside 0..255 is replaced by the nearest bound, `qMax(0, qMin(value, 255))`. -/
def colorRangeCheck (v : Int) : Int :=
  max 0 (min v 255)

/-- Source `Kdbx4XmlReader::readColor`. The loop rejects a part above 255 and
has no lower bound; `color.setRed(rgbPart)` and its two siblings store the part
after the range check of `QColor`, so a negative part is stored as 0. -/
def readColor (env : Env) (x : XmlElement) (st : Reader) : QColor × Reader :=
  let (colorStr, st1) := readString x st
  if colorStr.isEmpty then (.unset, st1)
  else if colorStr.length ≠ 7 || colorStr.data.head? ≠ some '#' then
    if st1.m_strictMode then (.unset, st1.raiseError "Invalid color value") else (.unset, st1)
  else
    match readColorPart env colorStr 0, readColorPart env colorStr 1,
        readColorPart env colorStr 2 with
    | some r, some g, some b =>
      (.rgb (colorRangeCheck r) (colorRangeCheck g) (colorRangeCheck b), st1)
    | _, _, _ =>
      if st1.m_strictMode then (.unset, st1.raiseError "Invalid color rgb part")
      else (.unset, st1)

/-- Source `Kdbx4XmlReader::getGroup`: the registry's group for a non-null UUID, made
on first use as a placeholder under the temporary parent. -/
def getGroup (uuid : Uuid) (st : Reader) : Option Nat × Reader :=
  if uuid.isNull then (none, st)
  else
    match mapGet uuid st.m_groups with
    | some p => (some p, st.logGroup uuid p)
    | none =>
      let (group, st1) := st.newGroup
      let st2 := st1.updGroup group (fun g => { g with m_updateTimeinfo := false })
      let st3 := st2.updGroup group (fun g => { g with m_uuid := uuid })
      let st4 := st3.setParent group st3.m_tmpParent
      (some group, st4.registerGroup uuid group)

/-- Source `Kdbx4XmlReader::getEntry`. -/
def getEntry (uuid : Uuid) (st : Reader) : Option Nat × Reader :=
  if uuid.isNull then (none, st)
  else
    match mapGet uuid st.m_entries with
    | some p => (some p, st.logEntry uuid p)
    | none =>
      let (entry, st1) := st.newEntry
      let st2 := st1.updEntry entry (fun e => { e with m_updateTimeinfo := false })
      let st3 := st2.updEntry entry (fun e => { e with m_uuid := uuid })
      let st4 := st3.setGroup entry st3.m_tmpParent
      (some entry, st4.registerEntry uuid entry)

/-- The loop `while (!m_xml.hasError() && m_xml.readNextStartElement()) body`
of a parse function whose body reads each child element through its end: the
body runs on the child elements in document order, carrying the locals `σ` of
the function, until the XML reader has an error. -/
def forEachChild {σ : Type} (body : XmlElement → σ × Reader → σ × Reader) :
    List XmlElement → σ × Reader → σ × Reader
  | [], s => s
  | x :: rest, s => if s.2.xmlError then s else forEachChild body rest (body x s)

/-- Apply a setter to `m_meta`. -/
def Reader.setMeta (st : Reader) (f : Metadata → Metadata) : Reader :=
  { st with m_meta := f st.m_meta }

/-- Source `Kdbx4XmlReader::skipCurrentElement` on a child element inside a
`forEachChild` loop: the subtree is passed over, the state stays as it is. -/
def skipChild (st : Reader) : Reader := st

/-- The body of the loop of `parseMemoryProtection` for one child element `c`. -/
def parseMemoryProtectionChild (c : XmlElement) (s : Unit × Reader) :
    Unit × Reader :=
  if c.name = "ProtectTitle" then
    let (b, st1) := readBool c s.2; ((), st1.setMeta (fun m => { m with protectTitle := b }))
  else if c.name = "ProtectUserName" then
    let (b, st1) := readBool c s.2; ((), st1.setMeta (fun m => { m with protectUsername := b }))
  else if c.name = "ProtectPassword" then
    let (b, st1) := readBool c s.2; ((), st1.setMeta (fun m => { m with protectPassword := b }))
  else if c.name = "ProtectURL" then
    let (b, st1) := readBool c s.2; ((), st1.setMeta (fun m => { m with protectUrl := b }))
  else if c.name = "ProtectNotes" then
    let (b, st1) := readBool c s.2; ((), st1.setMeta (fun m => { m with protectNotes := b }))
  else ((), skipChild s.2)

/-- Source `Kdbx4XmlReader::parseMemoryProtection`. -/
def parseMemoryProtection (x : XmlElement) (st : Reader) : Reader :=
  (forEachChild parseMemoryProtectionChild x.children ((), st)).2

/-- Locals of `parseIcon`. -/
structure IconLocals where
  uuid : Uuid
  icon : QByteArray
  uuidSet : Bool
  iconSet : Bool

/-- The body of the loop of `parseIcon` for one child element `c`. -/
def parseIconChild (env : Env) (c : XmlElement) (s : IconLocals × Reader) :
    IconLocals × Reader :=
  if c.name = "UUID" then
    let (uuid, st1) := readUuid env c s.2
    ({ s.1 with uuid := uuid, uuidSet := !uuid.isNull }, st1)
  else if c.name = "Data" then
    let (data, st1) := readBinary env c s.2
    ({ s.1 with icon := data, iconSet := true }, st1)
  else (s.1, skipChild s.2)

/-- Source `Kdbx4XmlReader::parseIcon`; the image is kept as its bytes. -/
def parseIcon (env : Env) (x : XmlElement) (st : Reader) : Reader :=
  let (l, st1) := forEachChild (parseIconChild env) x.children (⟨Uuid.null, [], false, false⟩, st)
  if l.uuidSet && l.iconSet then
    st1.setMeta (fun m => { m with customIcons := m.customIcons ++ [(l.uuid, l.icon)] })
  else st1.raiseError "Missing icon uuid or data"

/-- The body of the loop of `parseCustomIcons` for one child element `c`. -/
def parseCustomIconsChild (env : Env) (c : XmlElement) (s : Unit × Reader) :
    Unit × Reader :=
  if c.name = "Icon" then ((), parseIcon env c s.2)
  else ((), skipChild s.2)

/-- Source `Kdbx4XmlReader::parseCustomIcons`. -/
def parseCustomIcons (env : Env) (x : XmlElement) (st : Reader) : Reader :=
  (forEachChild (parseCustomIconsChild env) x.children ((), st)).2

/-- The body of the loop of `parseBinaries` for one child element `c`. -/
def parseBinariesChild (env : Env) (c : XmlElement) (s : Unit × Reader) :
    Unit × Reader :=
  if c.name ≠ "Binary" then ((), skipChild s.2)
  else
    let id := c.attr "ID"
    let (data, st1) :=
      if eqIgnoreCase (c.attr "Compressed") "True" then readCompressedBinary env c s.2
      else readBinary env c s.2
    ((), st1.setBinaryPool (mapSet id data st1.m_binaryPool))

/-- Source `Kdbx4XmlReader::parseBinaries`. -/
def parseBinaries (env : Env) (x : XmlElement) (st : Reader) : Reader :=
  (forEachChild (parseBinariesChild env)
    x.children ((), st)).2

/-- Locals of `parseCustomDataItem`. -/
structure ItemLocals where
  key : String
  value : String
  keySet : Bool
  valueSet : Bool

/-- The body of the loop of `parseCustomDataItem` for one child element `c`. -/
def parseCustomDataItemChild (c : XmlElement) (s : ItemLocals × Reader) :
    ItemLocals × Reader :=
  if c.name = "Key" then
    let (key, st1) := readString c s.2
    ({ s.1 with key := key, keySet := true }, st1)
  else if c.name = "Value" then
    let (value, st1) := readString c s.2
    ({ s.1 with value := value, valueSet := true }, st1)
  else (s.1, skipChild s.2)

/-- Source `Kdbx4XmlReader::parseCustomDataItem`. -/
def parseCustomDataItem (x : XmlElement) (st : Reader) : Reader :=
  let (l, st1) := forEachChild parseCustomDataItemChild x.children (⟨"", "", false, false⟩, st)
  if l.keySet && l.valueSet then
    st1.setMeta (fun m => { m with customFields := mapSet l.key l.value m.customFields })
  else st1.raiseError "Missing custom data key or value"

/-- The body of the loop of `parseCustomData` for one child element `c`. -/
def parseCustomDataChild (c : XmlElement) (s : Unit × Reader) :
    Unit × Reader :=
  if c.name = "Item" then ((), parseCustomDataItem c s.2)
  else ((), skipChild s.2)

/-- Source `Kdbx4XmlReader::parseCustomData`. -/
def parseCustomData (x : XmlElement) (st : Reader) : Reader :=
  (forEachChild parseCustomDataChild x.children ((), st)).2

/-- The body of the loop of `parseMeta` for one child element `c`. -/
def parseMetaChild (env : Env) (c : XmlElement) (st : Reader) : Reader :=
  if c.name = "Generator" then
    let (v, st1) := readString c st; st1.setMeta (fun m => { m with generator := v })
  else if c.name = "HeaderHash" then
    let (v, st1) := readBinary env c st; st1.setHeaderHash v
  else if c.name = "DatabaseName" then
    let (v, st1) := readString c st; st1.setMeta (fun m => { m with name := v })
  else if c.name = "DatabaseNameChanged" then
    let (v, st1) := readDateTime env c st; st1.setMeta (fun m => { m with nameChanged := v })
  else if c.name = "DatabaseDescription" then
    let (v, st1) := readString c st; st1.setMeta (fun m => { m with description := v })
  else if c.name = "DatabaseDescriptionChanged" then
    let (v, st1) := readDateTime env c st
    st1.setMeta (fun m => { m with descriptionChanged := v })
  else if c.name = "DefaultUserName" then
    let (v, st1) := readString c st; st1.setMeta (fun m => { m with defaultUserName := v })
  else if c.name = "DefaultUserNameChanged" then
    let (v, st1) := readDateTime env c st
    st1.setMeta (fun m => { m with defaultUserNameChanged := v })
  else if c.name = "MaintenanceHistoryDays" then
    let (v, st1) := readNumber env c st
    st1.setMeta (fun m => { m with maintenanceHistoryDays := v })
  else if c.name = "Color" then
    let (v, st1) := readColor env c st; st1.setMeta (fun m => { m with color := v })
  else if c.name = "MasterKeyChanged" then
    let (v, st1) := readDateTime env c st
    st1.setMeta (fun m => { m with masterKeyChanged := v })
  else if c.name = "MasterKeyChangeRec" then
    let (v, st1) := readNumber env c st
    st1.setMeta (fun m => { m with masterKeyChangeRec := v })
  else if c.name = "MasterKeyChangeForce" then
    let (v, st1) := readNumber env c st
    st1.setMeta (fun m => { m with masterKeyChangeForce := v })
  else if c.name = "MemoryProtection" then parseMemoryProtection c st
  else if c.name = "CustomIcons" then parseCustomIcons env c st
  else if c.name = "RecycleBinEnabled" then
    let (v, st1) := readBool c st; st1.setMeta (fun m => { m with recycleBinEnabled := v })
  else if c.name = "RecycleBinUUID" then
    let (u, st1) := readUuid env c st
    let (g, st2) := getGroup u st1
    st2.setMeta (fun m => { m with recycleBin := g })
  else if c.name = "RecycleBinChanged" then
    let (v, st1) := readDateTime env c st
    st1.setMeta (fun m => { m with recycleBinChanged := v })
  else if c.name = "EntryTemplatesGroup" then
    let (u, st1) := readUuid env c st
    let (g, st2) := getGroup u st1
    st2.setMeta (fun m => { m with entryTemplatesGroup := g })
  else if c.name = "EntryTemplatesGroupChanged" then
    let (v, st1) := readDateTime env c st
    st1.setMeta (fun m => { m with entryTemplatesGroupChanged := v })
  else if c.name = "LastSelectedGroup" then
    let (u, st1) := readUuid env c st
    let (g, st2) := getGroup u st1
    st2.setMeta (fun m => { m with lastSelectedGroup := g })
  else if c.name = "LastTopVisibleGroup" then
    let (u, st1) := readUuid env c st
    let (g, st2) := getGroup u st1
    st2.setMeta (fun m => { m with lastTopVisibleGroup := g })
  else if c.name = "HistoryMaxItems" then
    let (value, st1) := readNumber env c st
    if value ≥ -1 then st1.setMeta (fun m => { m with historyMaxItems := value }) else st1
  else if c.name = "HistoryMaxSize" then
    let (value, st1) := readNumber env c st
    if value ≥ -1 then st1.setMeta (fun m => { m with historyMaxSize := value }) else st1
  else if c.name = "Binaries" then parseBinaries env c st
  else if c.name = "CustomData" then parseCustomData c st
  else if c.name = "SettingsChanged" then
    let (v, st1) := readDateTime env c st
    st1.setMeta (fun m => { m with settingsChanged := v })
  else skipChild st

/-- Source `Kdbx4XmlReader::parseMeta`. -/
def parseMeta (env : Env) (x : XmlElement) (st : Reader) : Reader :=
  (forEachChild (fun c (s : Unit × Reader) => ((), parseMetaChild env c s.2))
    x.children ((), st)).2

/-- The body of the loop of `parseTimes` for one child element `c`. -/
def parseTimesChild (env : Env) (c : XmlElement) (s : TimeInfo × Reader) :
    TimeInfo × Reader :=
  if c.name = "LastModificationTime" then
    let (v, st1) := readDateTime env c s.2; ({ s.1 with lastModificationTime := v }, st1)
  else if c.name = "CreationTime" then
    let (v, st1) := readDateTime env c s.2; ({ s.1 with creationTime := v }, st1)
  else if c.name = "LastAccessTime" then
    let (v, st1) := readDateTime env c s.2; ({ s.1 with lastAccessTime := v }, st1)
  else if c.name = "ExpiryTime" then
    let (v, st1) := readDateTime env c s.2; ({ s.1 with expiryTime := v }, st1)
  else if c.name = "Expires" then
    let (v, st1) := readBool c s.2; ({ s.1 with expires := v }, st1)
  else if c.name = "UsageCount" then
    let (v, st1) := readNumber env c s.2; ({ s.1 with usageCount := v }, st1)
  else if c.name = "LocationChanged" then
    let (v, st1) := readDateTime env c s.2; ({ s.1 with locationChanged := v }, st1)
  else (s.1, skipChild s.2)

/-- Source `Kdbx4XmlReader::parseTimes`. -/
def parseTimes (env : Env) (x : XmlElement) (st : Reader) : TimeInfo × Reader :=
  forEachChild (parseTimesChild env) x.children (TimeInfo.init, st)

/-- The body of the loop of `parseDeletedObject` for one child element `c`. -/
def parseDeletedObjectChild (env : Env) (c : XmlElement) (s : DeletedObject × Reader) :
    DeletedObject × Reader :=
  if c.name = "UUID" then
    let (uuid, st1) := readUuid env c s.2
    if uuid.isNull then
      if st1.m_strictMode then (s.1, st1.raiseError "Null DeleteObject uuid") else (s.1, st1)
    else ({ s.1 with uuid := uuid }, st1)
  else if c.name = "DeletionTime" then
    let (v, st1) := readDateTime env c s.2; ({ s.1 with deletionTime := v }, st1)
  else (s.1, skipChild s.2)

/-- Source `Kdbx4XmlReader::parseDeletedObject`. -/
def parseDeletedObject (env : Env) (x : XmlElement) (st : Reader) : Reader :=
  let (delObj, st1) := forEachChild (parseDeletedObjectChild env) x.children (⟨Uuid.null, .null⟩, st)
  if !delObj.uuid.isNull && !delObj.deletionTime.isNull then
    st1.addDeletedObject delObj
  else if st1.m_strictMode then st1.raiseError "Missing DeletedObject uuid or time"
  else st1

/-- The body of the loop of `parseDeletedObjects` for one child element `c`. -/
def parseDeletedObjectsChild (env : Env) (c : XmlElement) (s : Unit × Reader) :
    Unit × Reader :=
  if c.name = "DeletedObject" then ((), parseDeletedObject env c s.2)
  else ((), skipChild s.2)

/-- Source `Kdbx4XmlReader::parseDeletedObjects`. -/
def parseDeletedObjects (env : Env) (x : XmlElement) (st : Reader) : Reader :=
  (forEachChild (parseDeletedObjectsChild env) x.children ((), st)).2

/-- Hand a ciphertext to the keystream cipher with state `cs`: the outcome of
`KeePass2RandomStream::process`, with the call logged and the cipher advanced. -/
def Reader.cipherProcess (env : Env) (st : Reader) (cs ciphertext : QByteArray) :
    (String ⊕ QByteArray) × Reader :=
  let r := env.process cs ciphertext
  (r.1, { st with m_randomStream := some r.2, cipherLog := st.cipherLog ++ [ciphertext] })

/-- Locals of `parseEntryString`. -/
structure StringLocals where
  key : String
  value : String
  protect : Bool
  keySet : Bool
  valueSet : Bool

/-- The `Value` branch of `parseEntryString`. -/
def parseEntryStringValue (env : Env) (c : XmlElement) (s : StringLocals × Reader) :
    StringLocals × Reader :=
  let (value, st1) := readString c s.2
  let isProtected : Bool := c.attr "Protected" = "True"
  let protectInMemory : Bool := c.attr "ProtectInMemory" = "True"
  if isProtected && !value.isEmpty then
    match st1.m_randomStream with
    | some cs =>
      let ciphertext := env.fromBase64 value
      match st1.cipherProcess env cs ciphertext with
      | (.inl errorString, st2) =>
        ({ s.1 with value := "", protect := isProtected || protectInMemory, valueSet := true },
          st2.raiseError errorString)
      | (.inr plaintext, st2) =>
        ({ s.1 with value := env.fromUtf8 plaintext,
                    protect := isProtected || protectInMemory, valueSet := true }, st2)
    | none => ({ s.1 with value := value }, st1.raiseError "Unable to decrypt entry string")
  else
    ({ s.1 with value := value, protect := isProtected || protectInMemory, valueSet := true },
      st1)

/-- The body of the loop of `parseEntryString` for one child element `c`. -/
def parseEntryStringChild (env : Env) (c : XmlElement) (s : StringLocals × Reader) :
    StringLocals × Reader :=
  if c.name = "Key" then
    let (key, st1) := readString c s.2
    ({ s.1 with key := key, keySet := true }, st1)
  else if c.name = "Value" then parseEntryStringValue env c s
  else (s.1, skipChild s.2)

/-- Source `Kdbx4XmlReader::parseEntryString` for the entry at `entry`. -/
def parseEntryString (env : Env) (entry : Nat) (x : XmlElement) (st : Reader) : Reader :=
  let (l, st1) := forEachChild (parseEntryStringChild env) x.children
    (⟨"", "", false, false, false⟩, st)
  if l.keySet && l.valueSet then
    if (st1.entry entry).hasAttribute l.key && !((st1.entry entry).attributeValue l.key).isEmpty
    then st1.raiseError "Duplicate custom attribute found"
    else st1.updEntry entry (fun e => e.setAttribute l.key l.value l.protect)
  else st1.raiseError "Entry string key or value missing"

/-- Locals of `parseEntryBinary`. In `poolRef` the first part is `none` for a
null `QString`; the second part, like `key`, comes from `readString` only and is
a null `QString` exactly when it is empty. -/
structure BinaryLocals where
  poolRef : Option String × String
  key : String
  value : QByteArray
  keySet : Bool
  valueSet : Bool

/-- The `Value` branch of `parseEntryBinary`. For a protected value that is
not empty the source calls `m_randomStream->processInPlace(value)` without the
null check that `parseEntryString` makes: with a null `m_randomStream` the
program dereferences a null pointer and does not return. The model marks this
with `Reader.nullDeref` and goes on with the value as read; what it computes
after the mark is the run of no program, and a result stands for a return of
the program only with `nullDeref = false`. -/
def parseEntryBinaryValue (env : Env) (c : XmlElement) (s : BinaryLocals × Reader) :
    BinaryLocals × Reader :=
  if c.hasAttribute "Ref" then
    ({ s.1 with poolRef := (some (c.attr "Ref"), s.1.key), valueSet := true }, skipChild s.2)
  else
    let (value, st1) := readBinary env c s.2
    let isProtected : Bool := c.hasAttribute "Protected" && c.attr "Protected" = "True"
    if isProtected && !value.isEmpty then
      match st1.m_randomStream with
      | some cs =>
        match st1.cipherProcess env cs value with
        | (.inl errorString, st2) =>
          ({ s.1 with value := value, valueSet := true }, st2.raiseError errorString)
        | (.inr plaintext, st2) => ({ s.1 with value := plaintext, valueSet := true }, st2)
      | none => ({ s.1 with value := value, valueSet := true }, st1.setNullDeref)
    else ({ s.1 with value := value, valueSet := true }, st1)

/-- The body of the loop of `parseEntryBinary` for one child element `c`. -/
def parseEntryBinaryChild (env : Env) (c : XmlElement) (s : BinaryLocals × Reader) :
    BinaryLocals × Reader :=
  if c.name = "Key" then
    let (key, st1) := readString c s.2
    ({ s.1 with key := key, keySet := true }, st1)
  else if c.name = "Value" then parseEntryBinaryValue env c s
  else (s.1, skipChild s.2)

/-- Source `Kdbx4XmlReader::parseEntryBinary` for the entry at `entry`: the pool
reference and the state. -/
def parseEntryBinary (env : Env) (entry : Nat) (x : XmlElement) (st : Reader) :
    (Option String × String) × Reader :=
  let (l, st1) := forEachChild (parseEntryBinaryChild env) x.children (⟨(none, ""), "", [], false, false⟩, st)
  if l.keySet && l.valueSet then
    if (st1.entry entry).hasAttachment l.key then
      (l.poolRef, st1.raiseError "Duplicate attachment found")
    else (l.poolRef, st1.updEntry entry (fun e => e.setAttachment l.key l.value))
  else (l.poolRef, st1.raiseError "Entry binary key or value missing")

/-- Locals of `parseAutoTypeAssoc`. -/
structure AssocLocals where
  assoc : Association
  windowSet : Bool
  sequenceSet : Bool

/-- The body of the loop of `parseAutoTypeAssoc` for one child element `c`. -/
def parseAutoTypeAssocChild (c : XmlElement) (s : AssocLocals × Reader) :
    AssocLocals × Reader :=
  if c.name = "Window" then
    let (v, st1) := readString c s.2
    ({ s.1 with assoc := { s.1.assoc with window := v }, windowSet := true }, st1)
  else if c.name = "KeystrokeSequence" then
    let (v, st1) := readString c s.2
    ({ s.1 with assoc := { s.1.assoc with sequence := v }, sequenceSet := true }, st1)
  else (s.1, skipChild s.2)

/-- Source `Kdbx4XmlReader::parseAutoTypeAssoc` for the entry at `entry`. -/
def parseAutoTypeAssoc (entry : Nat) (x : XmlElement) (st : Reader) : Reader :=
  let (l, st1) := forEachChild parseAutoTypeAssocChild x.children (⟨⟨"", ""⟩, false, false⟩, st)
  if l.windowSet && l.sequenceSet then
    st1.updEntry entry
      (fun e => { e with m_autoTypeAssociations := e.m_autoTypeAssociations ++ [l.assoc] })
  else st1.raiseError "Auto-type association window or sequence missing"

/-- The body of the loop of `parseAutoType` for one child element `c`. -/
def parseAutoTypeChild (env : Env) (entry : Nat) (c : XmlElement) (s : Unit × Reader) :
    Unit × Reader :=
  if c.name = "Enabled" then
    let (v, st1) := readBool c s.2
    ((), st1.updEntry entry (fun e => { e with m_autoTypeEnabled := v }))
  else if c.name = "DataTransferObfuscation" then
    let (v, st1) := readNumber env c s.2
    ((), st1.updEntry entry (fun e => { e with m_autoTypeObfuscation := v }))
  else if c.name = "DefaultSequence" then
    let (v, st1) := readString c s.2
    ((), st1.updEntry entry (fun e => { e with m_defaultAutoTypeSequence := v }))
  else if c.name = "Association" then ((), parseAutoTypeAssoc entry c s.2)
  else ((), skipChild s.2)

/-- Source `Kdbx4XmlReader::parseAutoType` for the entry at `entry`. -/
def parseAutoType (env : Env) (entry : Nat) (x : XmlElement) (st : Reader) : Reader :=
  (forEachChild (parseAutoTypeChild env entry) x.children ((), st)).2

/-- Source `m_xml.readNextStartElement()`: with an XML error it reads nothing; at the
end of the open element it closes that element and gives `none` (false); else
it enters the next child element and gives it. Past the end of the document
the XML reader raises its error. -/
def readNextStartElement (st : Reader) : Option XmlElement × Reader :=
  if st.xmlError then (none, st)
  else
    match st.pending with
    | [] => (none, st.setXmlError)
    | [] :: up => (none, st.setPending up)
    | (x :: rest) :: up => (some x, st.setPending (x.children :: rest :: up))

/-- The cursor of `m_xml` after the element just entered has been read through
its end, by a parse function that consumes it or by `skipCurrentElement`. -/
def Reader.endElement (st : Reader) : Reader :=
  st.setPending st.pending.tail

/-- Source `Kdbx4XmlReader::skipCurrentElement` on the element just entered. -/
def skipCurrentElement (st : Reader) : Reader :=
  st.endElement

/-- The branches of the loop of `parseGroup` that read the child element `c`
through its end, for the group under construction at `group`: every branch but
`Group` and `Entry`. An unrecognized element is skipped. -/
def parseGroupField (env : Env) (group : Nat) (c : XmlElement) (st : Reader) : Reader :=
  if c.name = "UUID" then
    let (uuid, st1) := readUuid env c st
    if uuid.isNull then
      if st1.m_strictMode then st1.raiseError "Null group uuid"
      else
        let (r, st2) := st1.randomUuid env
        st2.updGroup group (fun g => { g with m_uuid := r })
    else st1.updGroup group (fun g => { g with m_uuid := uuid })
  else if c.name = "Name" then
    let (v, st1) := readString c st; st1.updGroup group (fun g => { g with m_name := v })
  else if c.name = "Notes" then
    let (v, st1) := readString c st; st1.updGroup group (fun g => { g with m_notes := v })
  else if c.name = "IconID" then
    let (iconId, st1) := readNumber env c st
    if iconId < 0 then
      let st2 := if st1.m_strictMode then st1.raiseError "Invalid group icon number" else st1
      st2.updGroup group (fun g => g.setIconNumber 0)
    else if iconId ≥ env.IconCount then
      st1.updGroup group (fun g => g.setIconNumber (env.IconCount - 1))
    else st1.updGroup group (fun g => g.setIconNumber iconId)
  else if c.name = "CustomIconUUID" then
    let (uuid, st1) := readUuid env c st
    if !uuid.isNull then st1.updGroup group (fun g => g.setIconUuid uuid) else st1
  else if c.name = "Times" then
    let (v, st1) := parseTimes env c st
    st1.updGroup group (fun g => { g with m_timeInfo := v })
  else if c.name = "IsExpanded" then
    let (v, st1) := readBool c st; st1.updGroup group (fun g => { g with m_isExpanded := v })
  else if c.name = "DefaultAutoTypeSequence" then
    let (v, st1) := readString c st
    st1.updGroup group (fun g => { g with m_defaultAutoTypeSequence := v })
  else if c.name = "EnableAutoType" then
    let (str, st1) := readString c st
    if eqIgnoreCase str "null" then
      st1.updGroup group (fun g => { g with m_autoTypeEnabled := .Inherit })
    else if eqIgnoreCase str "true" then
      st1.updGroup group (fun g => { g with m_autoTypeEnabled := .Enable })
    else if eqIgnoreCase str "false" then
      st1.updGroup group (fun g => { g with m_autoTypeEnabled := .Disable })
    else st1.raiseError "Invalid EnableAutoType value"
  else if c.name = "EnableSearching" then
    let (str, st1) := readString c st
    if eqIgnoreCase str "null" then
      st1.updGroup group (fun g => { g with m_searchingEnabled := .Inherit })
    else if eqIgnoreCase str "true" then
      st1.updGroup group (fun g => { g with m_searchingEnabled := .Enable })
    else if eqIgnoreCase str "false" then
      st1.updGroup group (fun g => { g with m_searchingEnabled := .Disable })
    else st1.raiseError "Invalid EnableSearching value"
  else if c.name = "LastTopVisibleEntry" then
    let (uuid, st1) := readUuid env c st
    let (e, st2) := getEntry uuid st1
    st2.updGroup group (fun g => { g with m_lastTopVisibleEntry := e })
  else skipChild st

/-- Locals of `parseGroup`. -/
structure GroupLocals where
  group : Nat
  children : List Nat
  entries : List Nat
  deriving DecidableEq, Repr

/-- The first step of `parseGroup` after its loop: in Lenient mode a group
whose UUID is still null gets a random one. -/
def ensureGroupUuid (env : Env) (group : Nat) (st : Reader) : Reader :=
  if (st.group group).m_uuid.isNull && !st.m_strictMode then
    let (r, s) := st.randomUuid env
    s.updGroup group (fun g => { g with m_uuid := r })
  else st

/-- The second step of `parseGroup` after its loop: a local group with a UUID
is merged into the registry's group of that UUID and deleted; one without
raises an error unless there is one already. The result is the group kept. -/
def mergeGroup (tmpGroup : Nat) (st1 : Reader) : Nat × Reader :=
  if !(st1.group tmpGroup).m_uuid.isNull then
    match getGroup (st1.group tmpGroup).m_uuid st1 with
    | (some group, s1) =>
      let s2 := s1.updGroup group (fun g => g.copyDataFrom (s1.group tmpGroup))
      let s3 := s2.updGroup group (fun g => { g with m_updateTimeinfo := false })
      (group, (s3.deleteGroup tmpGroup).defGroup (st1.group tmpGroup).m_uuid group)
    | (none, s1) => (tmpGroup, s1)
  else if !st1.hasError then (tmpGroup, st1.raiseError "No group uuid found")
  else (tmpGroup, st1)

/-- The code of `parseGroup` after its loop: the random UUID of Lenient mode,
the merge of the local group into the registry's group, and the adoption of the
children and entries read. -/
def parseGroupFinish (env : Env) (l : GroupLocals) (st : Reader) : Nat × Reader :=
  let st1 := ensureGroupUuid env l.group st
  let (group, st2) := mergeGroup l.group st1
  let st3 := l.children.foldl (fun s child => s.setParent child group) st2
  let st4 := l.entries.foldl (fun s entry => s.setGroup entry group) st3
  (group, st4)

/-- The branches of the loop of `parseEntry` that read the child element `c`
through its end, for the entry under construction at `entry`: every branch but
`History`. The list is the local `binaryRefs`. An unrecognized element is
skipped. -/
def parseEntryField (env : Env) (entry : Nat) (c : XmlElement)
    (s : List (String × String) × Reader) : List (String × String) × Reader :=
  if c.name = "UUID" then
    let (uuid, st1) := readUuid env c s.2
    if uuid.isNull then
      if st1.m_strictMode then (s.1, st1.raiseError "Null entry uuid")
      else
        let (r, st2) := st1.randomUuid env
        (s.1, st2.updEntry entry (fun e => { e with m_uuid := r }))
    else (s.1, st1.updEntry entry (fun e => { e with m_uuid := uuid }))
  else if c.name = "IconID" then
    let (iconId, st1) := readNumber env c s.2
    if iconId < 0 then
      let st2 := if st1.m_strictMode then st1.raiseError "Invalid entry icon number" else st1
      (s.1, st2.updEntry entry (fun e => e.setIconNumber 0))
    else (s.1, st1.updEntry entry (fun e => e.setIconNumber iconId))
  else if c.name = "CustomIconUUID" then
    let (uuid, st1) := readUuid env c s.2
    if !uuid.isNull then (s.1, st1.updEntry entry (fun e => e.setIconUuid uuid)) else (s.1, st1)
  else if c.name = "ForegroundColor" then
    let (v, st1) := readColor env c s.2
    (s.1, st1.updEntry entry (fun e => { e with m_foregroundColor := v }))
  else if c.name = "BackgroundColor" then
    let (v, st1) := readColor env c s.2
    (s.1, st1.updEntry entry (fun e => { e with m_backgroundColor := v }))
  else if c.name = "OverrideURL" then
    let (v, st1) := readString c s.2
    (s.1, st1.updEntry entry (fun e => { e with m_overrideUrl := v }))
  else if c.name = "Tags" then
    let (v, st1) := readString c s.2
    (s.1, st1.updEntry entry (fun e => { e with m_tags := v }))
  else if c.name = "Times" then
    let (v, st1) := parseTimes env c s.2
    (s.1, st1.updEntry entry (fun e => { e with m_timeInfo := v }))
  else if c.name = "String" then (s.1, parseEntryString env entry c s.2)
  else if c.name = "Binary" then
    let (ref, st1) := parseEntryBinary env entry c s.2
    match ref.1 with
    | some id => if ref.2 ≠ "" then (s.1 ++ [(id, ref.2)], st1) else (s.1, st1)
    | none => (s.1, st1)
  else if c.name = "AutoType" then (s.1, parseAutoType env entry c s.2)
  else (s.1, skipChild s.2)

/-- Locals of `parseEntry`. -/
structure EntryLocals where
  entry : Nat
  historyItems : List Nat
  binaryRefs : List (String × String)
  deriving DecidableEq, Repr

/-- The loop of `parseEntry` over the history items read, for the entry at
`entry`. -/
def addHistoryItems (entry : Nat) : List Nat → Reader → Reader
  | [], st => st
  | historyItem :: rest, st =>
    let st1 :=
      if (st.entry historyItem).m_uuid ≠ (st.entry entry).m_uuid then
        if st.m_strictMode then st.raiseError "History element with different uuid"
        else st.updEntry historyItem (fun e => { e with m_uuid := (st.entry entry).m_uuid })
      else st
    addHistoryItems entry rest
      (st1.updEntry entry (fun e => { e with m_history := e.m_history ++ [historyItem] }))

/-- The first step of `parseEntry` after its loop: in Lenient mode an entry
whose UUID is still null gets a random one. -/
def ensureEntryUuid (env : Env) (entry : Nat) (st : Reader) : Reader :=
  if (st.entry entry).m_uuid.isNull && !st.m_strictMode then
    let (r, s) := st.randomUuid env
    s.updEntry entry (fun e => { e with m_uuid := r })
  else st

/-- The second step of `parseEntry` after its loop: a local entry with a UUID
is kept as it is in history mode, and else merged into the registry's entry of
that UUID and deleted; one without raises an error unless there is one already.
The result is the entry kept. -/
def mergeEntry (history : Bool) (tmpEntry : Nat) (st1 : Reader) : Nat × Reader :=
  if !(st1.entry tmpEntry).m_uuid.isNull then
    if history then
      (tmpEntry, st1.updEntry tmpEntry (fun e => { e with m_updateTimeinfo := false }))
    else
      match getEntry (st1.entry tmpEntry).m_uuid st1 with
      | (some entry, s1) =>
        let s2 := s1.updEntry entry (fun e => e.copyDataFrom (s1.entry tmpEntry))
        let s3 := s2.updEntry entry (fun e => { e with m_updateTimeinfo := false })
        (entry, (s3.deleteEntry tmpEntry).defEntry (st1.entry tmpEntry).m_uuid entry)
      | (none, s1) => (tmpEntry, s1)
  else if !st1.hasError then (tmpEntry, st1.raiseError "No entry uuid found")
  else (tmpEntry, st1)

/-- The code of `parseEntry` after its loop: the random UUID of Lenient mode,
the merge of the local entry into the registry's entry unless in history mode,
the history items and the pool references. -/
def parseEntryFinish (env : Env) (history : Bool) (l : EntryLocals) (st : Reader) :
    Nat × Reader :=
  let st1 := ensureEntryUuid env l.entry st
  let (entry, st2) := mergeEntry history l.entry st1
  let st3 := addHistoryItems entry l.historyItems st2
  let st4 := st3.addBinaryRefs (l.binaryRefs.map (fun ref => (ref.1, entry, ref.2)))
  (entry, st4)

mutual
/-- The loop of `parseEntry`, on `fuel` for the recursion. A `History` element
inside a history entry raises the error and is not read through its end: the
loop goes on inside it. -/
def parseEntryWhile (env : Env) : Nat → Bool → EntryLocals → Reader →
    Option (EntryLocals × Reader)
  | 0, _, _, _ => none
  | n + 1, history, l, st =>
    match readNextStartElement st with
    | (none, st1) => some (l, st1)
    | (some x, st1) =>
      if x.name = "History" then
        if history then
          parseEntryWhile env n history l (st1.raiseError "History element in history entry")
        else
          match parseEntryHistory env n st1 with
          | none => none
          | some (items, st2) => parseEntryWhile env n history { l with historyItems := items } st2
      else
        let (refs, st2) := parseEntryField env l.entry x (l.binaryRefs, st1)
        parseEntryWhile env n history { l with binaryRefs := refs } st2.endElement
/-- Source `Kdbx4XmlReader::parseEntry(history)`, on `fuel` for the recursion. -/
def parseEntry (env : Env) : Nat → Bool → Reader → Option (Nat × Reader)
  | 0, _, _ => none
  | n + 1, history, st =>
    let (entry, st1) := st.newEntry
    let st2 := st1.updEntry entry (fun e => { e with m_updateTimeinfo := false })
    match parseEntryWhile env n history ⟨entry, [], []⟩ st2 with
    | none => none
    | some (l, st3) => some (parseEntryFinish env history l st3)
/-- The loop of `parseEntryHistory`, on `fuel` for the recursion. -/
def parseEntryHistoryWhile (env : Env) : Nat → List Nat → Reader → Option (List Nat × Reader)
  | 0, _, _ => none
  | n + 1, historyItems, st =>
    match readNextStartElement st with
    | (none, st1) => some (historyItems, st1)
    | (some x, st1) =>
      if x.name = "Entry" then
        match parseEntry env n true st1 with
        | none => none
        | some (e, st2) => parseEntryHistoryWhile env n (historyItems ++ [e]) st2
      else parseEntryHistoryWhile env n historyItems (skipCurrentElement st1)
/-- Source `Kdbx4XmlReader::parseEntryHistory`, on `fuel` for the recursion. -/
def parseEntryHistory (env : Env) : Nat → Reader → Option (List Nat × Reader)
  | 0, _ => none
  | n + 1, st => parseEntryHistoryWhile env n [] st
end

mutual
/-- The loop of `parseGroup`, on `fuel` for the recursion. -/
def parseGroupWhile (env : Env) : Nat → GroupLocals → Reader → Option (GroupLocals × Reader)
  | 0, _, _ => none
  | n + 1, l, st =>
    match readNextStartElement st with
    | (none, st1) => some (l, st1)
    | (some x, st1) =>
      if x.name = "Group" then
        match parseGroup env n st1 with
        | none => none
        | some (newGroup, st2) =>
          parseGroupWhile env n { l with children := l.children ++ [newGroup] } st2
      else if x.name = "Entry" then
        match parseEntry env n false st1 with
        | none => none
        | some (newEntry, st2) =>
          parseGroupWhile env n { l with entries := l.entries ++ [newEntry] } st2
      else parseGroupWhile env n l (parseGroupField env l.group x st1).endElement
/-- Source `Kdbx4XmlReader::parseGroup`, on `fuel` for the recursion. -/
def parseGroup (env : Env) : Nat → Reader → Option (Nat × Reader)
  | 0, _ => none
  | n + 1, st =>
    let (group, st1) := st.newGroup
    let st2 := st1.updGroup group (fun g => { g with m_updateTimeinfo := false })
    match parseGroupWhile env n ⟨group, [], []⟩ st2 with
    | none => none
    | some (l, st3) => some (parseGroupFinish env l st3)
end

/-- Locals of `parseRoot`. -/
structure RootLocals where
  groupElementFound : Bool
  groupParsedSuccessfully : Bool
  deriving DecidableEq, Repr

/-- The loop of `parseRoot`, on `fuel` for the recursion. A second `Group`
element raises the error and is not read through its end: the loop goes on
inside it. `parseGroup` never returns a null pointer. -/
def parseRootWhile (env : Env) : Nat → RootLocals → Reader → Option (RootLocals × Reader)
  | 0, _, _ => none
  | n + 1, l, st =>
    match readNextStartElement st with
    | (none, st1) => some (l, st1)
    | (some x, st1) =>
      if x.name = "Group" then
        if l.groupElementFound then
          parseRootWhile env n { l with groupParsedSuccessfully := false }
            (st1.raiseError "Multiple group elements")
        else
          match parseGroup env n st1 with
          | none => none
          | some (rootGroup, st2) =>
            let oldRoot := st2.rootGroup
            let st3 := st2.setRootGroup rootGroup
            let st4 := st3.deleteGroup oldRoot
            parseRootWhile env n ⟨true, true⟩ st4
      else if x.name = "DeletedObjects" then
        parseRootWhile env n l (parseDeletedObjects env x st1).endElement
      else parseRootWhile env n l (skipCurrentElement st1)

/-- Source `Kdbx4XmlReader::parseRoot`, on `fuel` for the recursion. -/
def parseRoot (env : Env) : Nat → Reader → Option (Bool × Reader)
  | 0, _ => none
  | n + 1, st =>
    match parseRootWhile env n ⟨false, false⟩ st with
    | none => none
    | some (l, st1) => some (l.groupParsedSuccessfully, st1)

/-- Locals of `parseKeePassFile`. -/
structure FileLocals where
  rootElementFound : Bool
  rootParsedSuccessfully : Bool
  deriving DecidableEq, Repr

/-- The loop of `parseKeePassFile`, on `fuel` for the recursion. A second `Root`
element is not read through its end: the loop goes on inside it. -/
def parseKeePassFileWhile (env : Env) : Nat → FileLocals → Reader →
    Option (FileLocals × Reader)
  | 0, _, _ => none
  | n + 1, l, st =>
    match readNextStartElement st with
    | (none, st1) => some (l, st1)
    | (some x, st1) =>
      if x.name = "Meta" then parseKeePassFileWhile env n l (parseMeta env x st1).endElement
      else if x.name = "Root" then
        if l.rootElementFound then
          parseKeePassFileWhile env n { l with rootParsedSuccessfully := false } st1
        else
          match parseRoot env n st1 with
          | none => none
          | some (ok, st2) => parseKeePassFileWhile env n ⟨true, ok⟩ st2
      else parseKeePassFileWhile env n l (skipCurrentElement st1)

/-- Source `Kdbx4XmlReader::parseKeePassFile`, on `fuel` for the recursion. -/
def parseKeePassFile (env : Env) : Nat → Reader → Option (Bool × Reader)
  | 0, _ => none
  | n + 1, st =>
    match parseKeePassFileWhile env n ⟨false, false⟩ st with
    | none => none
    | some (l, st1) => some (l.rootParsedSuccessfully, st1)

/-- The state at the start of `readDatabase(device, db, randomStream)` on a
reader fresh from its constructor (with the given binary pool and mode) and a
database fresh from `Database()`: the error state is cleared, the cursor is
before the document element, the heap of groups holds the database's first root
at 0 and the new temporary parent at 1, and the metadata no longer updates its
timestamps. -/
def Reader.start (strictMode : Bool) (binaryPool : List (String × QByteArray))
    (randomStream : Option QByteArray) (doc : XmlElement) : Reader :=
  { pending := [[doc]], xmlError := false, m_error := false, m_errorStr := "",
    m_strictMode := strictMode, m_headerHash := [], m_binaryPool := binaryPool,
    m_binaryMap := [], m_groups := [], m_entries := [], m_tmpParent := 1,
    m_randomStream := randomStream, nullDeref := false,
    groups := [{ DbGroup.init with m_parent := .database }, DbGroup.init], entries := [],
    rootGroup := 0, deletedObjects := [],
    m_meta := { Metadata.init with updateDatetime := false }, cipherLog := [],
    randomCalls := 0, groupLog := [], entryLog := [], groupDefs := [], entryDefs := [] }

/-- The loop of `readDatabase` that sets each referenced attachment from the
pool; `m_binaryPool[id]` enters a missing id with empty bytes. -/
def resolveBinaries : List (String × Nat × String) → Reader → Reader
  | [], st => st
  | (id, entry, name) :: rest, st =>
    let st1 :=
      match mapGet id st.m_binaryPool with
      | some _ => st
      | none => st.setBinaryPool (mapSet id [] st.m_binaryPool)
    let data := (mapGet id st1.m_binaryPool).getD []
    resolveBinaries rest (st1.updEntry entry (fun e => e.setAttachment name data))

/-- The closing loops of `readDatabase` that switch the timestamp updates on
again, for the groups and entries of the registries and the history items. -/
def enableUpdates (st : Reader) : Reader :=
  let st1 := st.setMeta (fun m => { m with updateDatetime := true })
  let st2 := st1.m_groups.foldl
    (fun s kv => s.updGroup kv.2 (fun g => { g with m_updateTimeinfo := true })) st1
  st2.m_entries.foldl (fun s kv =>
    let s1 := s.updEntry kv.2 (fun e => { e with m_updateTimeinfo := true })
    (s1.entry kv.2).m_history.foldl
      (fun t h => t.updEntry h (fun e => { e with m_updateTimeinfo := true })) s1) st2

/-- The code of `readDatabase` from the test of `rootGroupParsed` on. -/
def readDatabaseFinish (env : Env) (rootGroupParsed : Bool) (st : Reader) : Reader :=
  if !rootGroupParsed then st.raiseError "No root group"
  else enableUpdates (resolveBinaries (env.hashOrder st.m_binaryMap) st)

/-- Source `Kdbx4XmlReader::readDatabase(device, db, randomStream)` on a well-formed
document and fresh reader and database, with explicit `fuel`. -/
def readDatabaseFuel (env : Env) (fuel : Nat) (strictMode : Bool)
    (binaryPool : List (String × QByteArray)) (randomStream : Option QByteArray)
    (doc : XmlElement) : Option Reader :=
  match readNextStartElement (Reader.start strictMode binaryPool randomStream doc) with
  | (some x, st1) =>
    if x.name = "KeePassFile" then
      match parseKeePassFile env fuel st1 with
      | none => none
      | some (rootGroupParsed, st2) => some (readDatabaseFinish env rootGroupParsed st2)
    else some (readDatabaseFinish env false st1)
  | (none, st1) => some (readDatabaseFinish env false st1)

/-- Source `Kdbx4XmlReader::readDatabase(device, db, randomStream)`, with fuel enough
for the document. -/
def readDatabase (env : Env) (strictMode : Bool) (binaryPool : List (String × QByteArray))
    (randomStream : Option QByteArray) (doc : XmlElement) : Option Reader :=
  readDatabaseFuel env (4 * doc.size + 2) strictMode binaryPool randomStream doc

/-! ## Part I. Definitions: a concrete environment for evaluating the reader -/

/-- The value of a base64 character, as in `QByteArray::fromBase64`. -/
def base64Value (c : Char) : Option Nat :=
  if 'A' ≤ c ∧ c ≤ 'Z' then some (c.toNat - 65)
  else if 'a' ≤ c ∧ c ≤ 'z' then some (c.toNat - 97 + 26)
  else if '0' ≤ c ∧ c ≤ '9' then some (c.toNat - 48 + 52)
  else if c = '+' then some 62
  else if c = '/' then some 63
  else none

/-- The loop of `QByteArray::fromBase64`: `buf` collects six bits per base64
character, a byte leaves as soon as eight bits are there, any other character
is passed over. -/
def fromBase64Loop : List Char → Nat → Nat → QByteArray
  | [], _, _ => []
  | c :: rest, buf, nbits =>
    match base64Value c with
    | none => fromBase64Loop rest buf nbits
    | some d =>
      let buf1 := buf * 64 + d
      let nbits1 := nbits + 6
      if nbits1 ≥ 8 then
        (buf1 / 2 ^ (nbits1 - 8)) :: fromBase64Loop rest (buf1 % 2 ^ (nbits1 - 8)) (nbits1 - 8)
      else fromBase64Loop rest buf1 nbits1

/-- Source `QByteArray::fromBase64` on the characters of a text. -/
def qtFromBase64 (s : String) : QByteArray :=
  fromBase64Loop s.data 0 0

/-- The digits of a text as a number in the given base, `none` when a character
is no digit of the base. -/
def digitsValue (base : Nat) : List Char → Nat → Option Nat
  | [], acc => some acc
  | c :: rest, acc =>
    let d := if '0' ≤ c ∧ c ≤ '9' then c.toNat - 48
      else if 'a' ≤ c ∧ c ≤ 'f' then c.toNat - 87
      else if 'A' ≤ c ∧ c ≤ 'F' then c.toNat - 55
      else base
    if d < base then digitsValue base rest (acc * base + d) else none

/-- A plain reading of unsigned digits, standing for `QString::toInt` on such
texts. -/
def plainToInt (base : Nat) (s : String) : Option Int :=
  if s.data.isEmpty then none else (digitsValue base s.data 0).map Int.ofNat

/-- A concrete environment: Qt's base64 decoding, plain number reading, UTF-8
texts of ASCII bytes, no ISO dates, a decompressor that fails on empty input
and else returns its input, a keystream cipher that adds its call count to each
byte and fails on the ciphertext `[0]`, random UUIDs `[n+1, 0, …, 0]`, 69
standard icons and a hash order that is the insertion order. -/
def Env.sample : Env :=
  { fromBase64 := qtFromBase64
    toInt := plainToInt 10
    toIntHex := plainToInt 16
    fromUtf8 := fun b => String.mk (b.map Char.ofNat)
    isIsoDate := fun _ => false
    decompress := fun b => (!b.isEmpty, b)
    process := fun cs data =>
      if data = [0] then (.inl "keystream failure", cs)
      else (.inr (data.map (fun b => (b + cs.length) % 256)), cs ++ [0])
    randomUuid := fun n => ⟨(n + 1) :: List.replicate 15 0⟩
    IconCount := 69
    hashOrder := fun l => l }

/-- An element without attributes. -/
def XmlElement.plain (name text : String) (children : List XmlElement) : XmlElement :=
  .mk name [] text children

/-- The base64 text of the UUID with bytes 0 to 15. -/
def Sample.uuidA : String := "AAECAwQFBgcICQoLDA0ODw=="

/-- The base64 text of the UUID with bytes 16 to 31. -/
def Sample.uuidB : String := "EBESExQVFhcYGRobHB0eHw=="

/-- The base64 text of the UUID with bytes 32 to 47. -/
def Sample.uuidC : String := "ICEiIyQlJicoKSorLC0uLw=="

/-- A document whose root group holds a UUID and then an `EnableAutoType`
element with an invalid value, which raises a hard error. -/
def Sample.docErrorLast : XmlElement :=
  .plain "KeePassFile" "" [
    .plain "Root" "" [
      .plain "Group" "" [
        .plain "UUID" Sample.uuidA [],
        .plain "EnableAutoType" "bogus" []]]]

/-- The document `Sample.docErrorLast` with elements after the failing one: a
reference to an entry, an entry with a protected string, and, after the root, a
metadata section that declares a pool binary. -/
def Sample.docErrorThenMore : XmlElement :=
  .plain "KeePassFile" "" [
    .plain "Root" "" [
      .plain "Group" "" [
        .plain "UUID" Sample.uuidA [],
        .plain "EnableAutoType" "bogus" [],
        .plain "LastTopVisibleEntry" Sample.uuidB [],
        .plain "Entry" "" [
          .plain "UUID" Sample.uuidC [],
          .plain "String" "" [
            .plain "Key" "secret" [],
            .mk "Value" [("Protected", "True")] "AQID" []]]]],
    .plain "Meta" "" [
      .plain "Binaries" "" [.mk "Binary" [("ID", "7")] "BAUG" []]]]

/-- What the claims on error handling look at in a final state: the error flag
and message, the two registries, the binary pool, the root group's children and
entries, and the state and the inputs of the keystream cipher. -/
def Reader.observe (st : Reader) :
    Bool × String × List (Uuid × Nat) × List (Uuid × Nat) × List (String × QByteArray) ×
      List Nat × Option QByteArray × List QByteArray :=
  (st.m_error, st.m_errorStr, st.m_groups, st.m_entries, st.m_binaryPool,
    (st.group st.rootGroup).m_entries, st.m_randomStream, st.cipherLog)

/-- A document with forward references: the metadata names the recycle bin by
the UUID of a group defined later, and the root group names as its last top
visible entry an entry that is defined later, under the child group. -/
def Sample.docForwardRefs : XmlElement :=
  .plain "KeePassFile" "" [
    .plain "Meta" "" [.plain "RecycleBinUUID" Sample.uuidB []],
    .plain "Root" "" [
      .plain "Group" "" [
        .plain "UUID" Sample.uuidA [],
        .plain "LastTopVisibleEntry" Sample.uuidC [],
        .plain "Group" "" [
          .plain "UUID" Sample.uuidB [],
          .plain "Name" "bin" [],
          .plain "Entry" "" [
            .plain "UUID" Sample.uuidC [],
            .plain "Tags" "later" []]]]]]

/-- What the claim on references looks at in a final state: the error flag, the
root group with its last top visible entry and its children, the recycle bin of
the metadata, and for the first child of the root its name, parent and entries,
and for the first entry of that child its tags and group. -/
def Reader.observeRefs (st : Reader) :
    Bool × Nat × Option Nat × List Nat × Option Nat × String × GroupParent × List Nat ×
      String × Option Nat :=
  let root := st.group st.rootGroup
  let child := st.group (root.m_children.headD 0)
  let entry := st.entry (child.m_entries.headD 0)
  (st.hasError, st.rootGroup, root.m_lastTopVisibleEntry, root.m_children, st.m_meta.recycleBin,
    child.m_name, child.m_parent, child.m_entries, entry.m_tags, entry.m_group)

/-- A document with one entry that has one `Binary` element made of the given
children, under a root group; the binary pool is given to the reader. -/
def Sample.docBinary (binaryChildren : List XmlElement) : XmlElement :=
  .plain "KeePassFile" "" [
    .plain "Root" "" [
      .plain "Group" "" [
        .plain "UUID" Sample.uuidA [],
        .plain "Entry" "" [
          .plain "UUID" Sample.uuidC [],
          .plain "Binary" "" binaryChildren]]]]

/-- The `Key` child of a `Binary` element, with the name `file`. -/
def Sample.binaryKey : XmlElement := .plain "Key" "file" []

/-- The `Value` child of a `Binary` element that refers to the pool id `7`. -/
def Sample.binaryRef : XmlElement := .mk "Value" [("Ref", "7")] "" []

/-- What the claim on pool references looks at in a final state: the error
flag, the recorded references, and the attachments of the first entry of the
root group. -/
def Reader.observeBinary (st : Reader) :
    Bool × List (String × Nat × String) × List (String × QByteArray) :=
  (st.hasError, st.m_binaryMap,
    (st.entry ((st.group st.rootGroup).m_entries.headD 0)).m_attachments)

/-- A document with a `Group` element where the reader skips it, inside `Meta`,
and an `Entry` element where the reader skips it, directly under `Root`, next
to the root group; the three elements carry three different UUIDs. -/
def Sample.docStray : XmlElement :=
  .plain "KeePassFile" "" [
    .plain "Meta" "" [.plain "Group" "" [.plain "UUID" Sample.uuidB []]],
    .plain "Root" "" [
      .plain "Group" "" [.plain "UUID" Sample.uuidA []],
      .plain "Entry" "" [.plain "UUID" Sample.uuidC []]]]

/-! ## Part I. Definitions: properties kept by every step of the reader -/

/-- The tree links of a group: parent, children, entries. -/
def DbGroup.links (g : DbGroup) : GroupParent × List Nat × List Nat :=
  (g.m_parent, g.m_children, g.m_entries)

/-- A property of the reader state kept by every elementary state change made
while one child element is read through its end: raising an error, changing a
group without touching its tree links, changing an entry without touching its
owning group, the registry lookups `getGroup` and `getEntry`, and changing the
metadata, the random source, the cipher, the XML error flag, the header hash,
the binary pool and the tombstones, and recording the dereference of
`m_randomStream` in a state where it is null. -/
structure StableLeaf (P : Reader → Prop) : Prop where
  raiseError : ∀ (st : Reader) (m : String), P st → P (st.raiseError m)
  updGroup : ∀ (st : Reader) (p : Nat) (f : DbGroup → DbGroup),
    (∀ g, (f g).links = g.links) → P st → P (st.updGroup p f)
  updEntry : ∀ (st : Reader) (p : Nat) (f : Entry → Entry),
    (∀ e, (f e).m_group = e.m_group) → P st → P (st.updEntry p f)
  setMeta : ∀ (st : Reader) (f : Metadata → Metadata), P st → P (st.setMeta f)
  getGroup : ∀ (st : Reader) (u : Uuid), P st → P (getGroup u st).2
  getEntry : ∀ (st : Reader) (u : Uuid), P st → P (getEntry u st).2
  randomUuid : ∀ (env : Env) (st : Reader), P st → P (st.randomUuid env).2
  cipherProcess : ∀ (env : Env) (st : Reader) (cs c : QByteArray),
    P st → P (st.cipherProcess env cs c).2
  setNullDeref : ∀ (st : Reader), st.m_randomStream = none → P st → P st.setNullDeref
  setXmlError : ∀ (st : Reader), P st → P st.setXmlError
  setHeaderHash : ∀ (st : Reader) (v : QByteArray), P st → P (st.setHeaderHash v)
  setBinaryPool : ∀ (st : Reader) (v : List (String × QByteArray)),
    P st → P (st.setBinaryPool v)
  addDeletedObject : ∀ (st : Reader) (d : DeletedObject), P st → P (st.addDeletedObject d)

/-- A property of the reader state kept by every elementary state change of a
decode: those of `StableLeaf`, and moving the cursor, allocating a group or an
entry, recording the merge of a defining element for a UUID and the object the
registry maps it to, attaching a group or an entry under a group, setting the
root group, and recording pool references. -/
structure Stable (P : Reader → Prop) extends StableLeaf P : Prop where
  setPending : ∀ (st : Reader) (q : List (List XmlElement)), P st → P (st.setPending q)
  newGroup : ∀ (st : Reader), P st → P st.newGroup.2
  newEntry : ∀ (st : Reader), P st → P st.newEntry.2
  defGroup : ∀ (st : Reader) (u : Uuid) (p : Nat), mapGet u st.m_groups = some p →
    P st → P (st.defGroup u p)
  defEntry : ∀ (st : Reader) (u : Uuid) (p : Nat), mapGet u st.m_entries = some p →
    P st → P (st.defEntry u p)
  setParent : ∀ (st : Reader) (c p : Nat), P st → P (st.setParent c p)
  setGroup : ∀ (st : Reader) (e p : Nat), P st → P (st.setGroup e p)
  setRootGroup : ∀ (st : Reader) (p : Nat), P st → P (st.setRootGroup p)
  addBinaryRefs : ∀ (st : Reader) (v : List (String × Nat × String)),
    P st → P (st.addBinaryRefs v)

/-! ## Part I. Definitions: the groups and entries of a document and of a vault -/

mutual
/-- Number of elements named `name` in the tree of an element, itself included. -/
def XmlElement.countNamed (name : String) : XmlElement → Nat
  | .mk n _ _ cs => (if n = name then 1 else 0) + XmlElement.countNamedList name cs
/-- Number of elements named `name` in the trees of a list of elements. -/
def XmlElement.countNamedList (name : String) : List XmlElement → Nat
  | [] => 0
  | x :: xs => x.countNamed name + XmlElement.countNamedList name xs
end

mutual
/-- Number of `Entry` elements in the tree of an element that are not inside a
`History` element. -/
def XmlElement.countEntriesOutsideHistory : XmlElement → Nat
  | .mk n _ _ cs =>
    if n = "History" then 0
    else (if n = "Entry" then 1 else 0) + XmlElement.countEntriesOutsideHistoryList cs
/-- The same for a list of elements. -/
def XmlElement.countEntriesOutsideHistoryList : List XmlElement → Nat
  | [] => 0
  | x :: xs => x.countEntriesOutsideHistory + XmlElement.countEntriesOutsideHistoryList xs
end

mutual
/-- Number of groups that the loop of `parseGroup` gets from a child element:
for a `Group` element, itself and those of its child elements; none for any
other element. -/
def XmlElement.countGroups : XmlElement → Nat
  | .mk n _ _ cs => if n = "Group" then 1 + countGroupsList cs else 0
/-- Number of `Group` elements that the loop of `parseGroup` hands to
`parseGroup`, among the child elements `cs` of a `Group` element and below. -/
def countGroupsList : List XmlElement → Nat
  | [] => 0
  | x :: xs => x.countGroups + countGroupsList xs
end

mutual
/-- Number of entries that the loop of `parseGroup` gets from a child element:
for a `Group` element those of its child elements, for an `Entry` element one;
none for any other element. -/
def XmlElement.countEntries : XmlElement → Nat
  | .mk n _ _ cs => if n = "Group" then countEntriesList cs else if n = "Entry" then 1 else 0
/-- Number of `Entry` elements that the loop of `parseGroup` hands to
`parseEntry`, among the child elements `cs` of a `Group` element and below. -/
def countEntriesList : List XmlElement → Nat
  | [] => 0
  | x :: xs => x.countEntries + countEntriesList xs
end

/-- The child elements of the `Root` elements of a document. -/
def rootChildren (doc : XmlElement) : List XmlElement :=
  (doc.children.filter (fun r => r.name = "Root")).flatMap (fun r => r.children)

/-- Number of `Group` elements of a document in defining position: the `Group`
children of `Root`, and the `Group` children of those, at any depth. -/
def countGroupElements (doc : XmlElement) : Nat :=
  countGroupsList (rootChildren doc)

/-- Number of `Entry` elements of a document in defining position: the `Entry`
children of the `Group` elements in defining position. -/
def countEntryElements (doc : XmlElement) : Nat :=
  countEntriesList ((rootChildren doc).filter (fun g => g.name = "Group"))

/-- The group at `g` and the groups below it, through the child lists, to the
depth `fuel`. -/
def Reader.groupsUnder (st : Reader) : Nat → Nat → List Nat
  | 0, _ => []
  | n + 1, g => g :: (st.group g).m_children.flatMap (fun c => st.groupsUnder n c)

/-- The groups of the database: its root group and the groups below it. No
chain of child groups is longer than the heap of groups. -/
def Reader.vaultGroups (st : Reader) : List Nat :=
  st.groupsUnder st.groups.length st.rootGroup

/-- The entries of the database: those in the entry lists of its groups. -/
def Reader.vaultEntries (st : Reader) : List Nat :=
  st.vaultGroups.flatMap (fun g => (st.group g).m_entries)

/-- What the claim on counts looks at in a final state: the error flag, the
number of groups and the number of entries of the database. -/
def Reader.observeCounts (st : Reader) : Bool × Nat × Nat :=
  (st.hasError, st.vaultGroups.length, st.vaultEntries.length)

/-! ## Part I. Definitions: the tree of groups and entries in a reader state -/

/-- The part of a reader state that the tree of groups and entries is made of:
the parent, the child list and the entry list of every group, the owning group
of every entry, the two registries, the records of the merges, the temporary
parent, the sizes of the two heaps, and the root group of the database. -/
structure View where
  parent : Nat → GroupParent
  children : Nat → List Nat
  gentries : Nat → List Nat
  egroup : Nat → Option Nat
  reg : List (Uuid × Nat)
  ereg : List (Uuid × Nat)
  gdefs : List (Uuid × Nat)
  edefs : List (Uuid × Nat)
  tp : Nat
  glen : Nat
  elen : Nat
  root : Nat

/-- The tree of groups and entries of a reader state. -/
def Reader.view (st : Reader) : View :=
  { parent := fun p => (st.group p).m_parent,
    children := fun p => (st.group p).m_children,
    gentries := fun p => (st.group p).m_entries,
    egroup := fun e => (st.entry e).m_group,
    reg := st.m_groups, ereg := st.m_entries, gdefs := st.groupDefs, edefs := st.entryDefs,
    tp := st.m_tmpParent, glen := st.groups.length, elen := st.entries.length,
    root := st.rootGroup }

/-- Set the parent of the group at `p`, if there is one. -/
def View.updParent (V : View) (p : Nat) (x : GroupParent) : View :=
  if p < V.glen then { V with parent := Function.update V.parent p x } else V

/-- Change the child list of the group at `p`, if there is one. -/
def View.updChildren (V : View) (p : Nat) (f : List Nat → List Nat) : View :=
  if p < V.glen then { V with children := Function.update V.children p (f (V.children p)) }
  else V

/-- Change the entry list of the group at `p`, if there is one. -/
def View.updGentries (V : View) (p : Nat) (f : List Nat → List Nat) : View :=
  if p < V.glen then { V with gentries := Function.update V.gentries p (f (V.gentries p)) }
  else V

/-- Set the owning group of the entry at `e`, if there is one. -/
def View.updEgroup (V : View) (e : Nat) (x : Option Nat) : View :=
  if e < V.elen then { V with egroup := Function.update V.egroup e x } else V

/-- What `Reader.cleanupParent` does to the tree. -/
def View.cleanupParent (V : View) (c : Nat) : View :=
  match V.parent c with
  | .group q => V.updChildren q (fun l => l.filter (· ≠ c))
  | _ => V

/-- What `Reader.setParent` does to the tree. -/
def View.setParent (V : View) (c p : Nat) : View :=
  ((V.cleanupParent c).updParent c (.group p)).updChildren p (fun l => l ++ [c])

/-- What `Reader.setRootGroup` does to the tree. -/
def View.setRootGroup (V : View) (p : Nat) : View :=
  { (V.cleanupParent p).updParent p .database with root := p }

/-- What `Reader.setGroup` does to the tree. -/
def View.setGroup (V : View) (e p : Nat) : View :=
  if V.egroup e = some p then V
  else
    let V1 := match V.egroup e with
      | some q => V.updGentries q (fun l => l.filter (· ≠ e))
      | none => V
    (V1.updEgroup e (some p)).updGentries p (fun l => l ++ [e])

/-- What `Reader.newGroup` does to the tree: the new group has no parent, no
child and no entry, as every position past the heap. -/
def View.newGroup (V : View) : View :=
  { V with glen := V.glen + 1 }

/-- What `Reader.newEntry` does to the tree. -/
def View.newEntry (V : View) : View :=
  { V with elen := V.elen + 1 }

/-- What `getGroup` does to the tree. -/
def View.getGroup (V : View) (u : Uuid) : View :=
  if u.isNull then V
  else
    match mapGet u V.reg with
    | some _ => V
    | none => { V.newGroup.setParent V.glen V.tp with reg := mapSet u V.glen V.reg }

/-- What `getEntry` does to the tree. -/
def View.getEntry (V : View) (u : Uuid) : View :=
  if u.isNull then V
  else
    match mapGet u V.ereg with
    | some _ => V
    | none => { V.newEntry.setGroup V.elen V.tp with ereg := mapSet u V.elen V.ereg }

/-- What `Reader.defGroup` does to the tree. -/
def View.defGroup (V : View) (u : Uuid) (p : Nat) : View :=
  { V with gdefs := V.gdefs ++ [(u, p)] }

/-- What `Reader.defEntry` does to the tree. -/
def View.defEntry (V : View) (u : Uuid) (p : Nat) : View :=
  { V with edefs := V.edefs ++ [(u, p)] }

/-! ## Part I. Definitions: the shape of the tree during a decode -/

/-- The shape of the tree between two steps of a decode without error, where
`S` lists the groups and `Se` the entries that a `Group` element has defined
and that wait for the end of the enclosing `Group` element to be attached:
the temporary parent is a group outside the registry; the registries map
distinct UUIDs to distinct objects of the heaps; every position past a heap is
an object without links; a registered object that no element has defined yet
hangs under the temporary parent, and so does an object that waits to be
attached. -/
structure TreeInv (V : View) (S Se : List Nat) : Prop where
  tp_lt : V.tp < V.glen
  tp_unreg : ∀ u, mapGet u V.reg ≠ some V.tp
  reg_lt : ∀ u p, mapGet u V.reg = some p → p < V.glen
  reg_inj : ∀ u v p, mapGet u V.reg = some p → mapGet v V.reg = some p → u = v
  defs_reg : ∀ d ∈ V.gdefs, mapGet d.1 V.reg = some d.2
  ereg_lt : ∀ u e, mapGet u V.ereg = some e → e < V.elen
  ereg_inj : ∀ u v e, mapGet u V.ereg = some e → mapGet v V.ereg = some e → u = v
  edefs_reg : ∀ d ∈ V.edefs, mapGet d.1 V.ereg = some d.2
  beyond : ∀ p, V.glen ≤ p → V.parent p = .none ∧ V.children p = [] ∧ V.gentries p = []
  ebeyond : ∀ e, V.elen ≤ e → V.egroup e = none
  fresh : ∀ u p, mapGet u V.reg = some p → p ∉ V.gdefs.map Prod.snd →
    V.parent p = .group V.tp ∧ V.children p = [] ∧ V.gentries p = []
  efresh : ∀ u e, mapGet u V.ereg = some e → e ∉ V.edefs.map Prod.snd →
    V.egroup e = some V.tp
  pend : ∀ c ∈ S, c ∈ V.gdefs.map Prod.snd ∧ V.parent c = .group V.tp
  epend : ∀ e ∈ Se, e ∈ V.edefs.map Prod.snd ∧ V.egroup e = some V.tp
  pend_nodup : S.Nodup
  epend_nodup : Se.Nodup

/-- The tree `W` comes after the tree `V` in a decode: the records of the
merges grow at the end, and the groups defined in `V` keep their child list and
their entry list. -/
structure TreeExt (V W : View) : Prop where
  gdefs : V.gdefs <+: W.gdefs
  edefs : V.edefs <+: W.edefs
  kids : ∀ p ∈ V.gdefs.map Prod.snd, W.children p = V.children p ∧ W.gentries p = V.gentries p

/-- The child elements `xs` of a `Group` element have been read into the
groups `gs` and the entries `es`, in the order of the document: each `Group`
element among them into one defined group whose child list and entry list come
from the children of that element in the same way, and each `Entry` element
among them into one entry. -/
def BuiltList (V : View) : List XmlElement → List Nat → List Nat → Prop
  | [], gs, es => gs = [] ∧ es = []
  | (.mk n _ _ cs) :: xs, gs, es =>
    if n = "Group" then
      ∃ g gs1, gs = g :: gs1 ∧ g ∈ V.gdefs.map Prod.snd ∧
        BuiltList V cs (V.children g) (V.gentries g) ∧ BuiltList V xs gs1 es
    else if n = "Entry" then ∃ e es1, es = e :: es1 ∧ BuiltList V xs gs es1
    else BuiltList V xs gs es

/-- A decode has left the case of the count of groups and entries: an error
has been raised, or two elements have been merged under the same UUID. -/
def Reader.Bad (st : Reader) : Prop :=
  st.m_error = true ∨ st.xmlError = true ∨ ¬ (st.groupDefs.map Prod.fst).Nodup ∨
    ¬ (st.entryDefs.map Prod.fst).Nodup

/-- The `Group` elements among the child elements of the `Root` elements among
the elements `cs`. -/
def rootGroups (cs : List XmlElement) : List XmlElement :=
  ((cs.filter (fun r => r.name = "Root")).flatMap (fun r => r.children)).filter
    (fun g => g.name = "Group")

/-- The `Group` elements `gs` have been read into the tree with the root group
of the database on top: one element, read into the root group, and as many
merges as there are groups in it. -/
def RootBuilt (st : Reader) (gs : List XmlElement) : Prop :=
  BuiltList st.view gs [st.rootGroup] [] ∧ st.groupDefs.length = countGroupsList gs

/-- The state of the loop of `parseRoot` after the child elements `cs` of the
`Root` element: before the first `Group` element nothing is merged; after it,
it has been read into the tree with the root group on top. -/
def RootRead (l : RootLocals) (st : Reader) (cs : List XmlElement) : Prop :=
  (l.groupElementFound = false →
    st.groupDefs = [] ∧ cs.filter (fun g => g.name = "Group") = [] ∧
      l.groupParsedSuccessfully = false) ∧
  (l.groupElementFound = true → RootBuilt st (cs.filter (fun g => g.name = "Group")))

/-- The state of the loop of `parseKeePassFile` after the child elements `cs`
of the document element: before the first `Root` element nothing is merged;
after a `Root` element read with success, its `Group` elements have been read
into the tree with the root group on top. -/
def FileRead (l : FileLocals) (st : Reader) (cs : List XmlElement) : Prop :=
  (l.rootElementFound = false →
    st.groupDefs = [] ∧ cs.filter (fun r => r.name = "Root") = [] ∧
      l.rootParsedSuccessfully = false) ∧
  (l.rootElementFound = true → l.rootParsedSuccessfully = true →
    RootBuilt st (rootGroups cs))

/-! ## Part I. Definitions: the work left for the reader -/

/-- The number of tokens that the XML reader has still to give: for every open
element its end, and for every element not yet entered its start and its end. -/
def pendingWork : List (List XmlElement) → Nat
  | [] => 0
  | f :: up => 2 * XmlElement.sizeList f + 1 + pendingWork up

/-- The work left in a reader state: none after an error of the XML reader. -/
def Reader.work (st : Reader) : Nat :=
  if st.xmlError then 0 else pendingWork st.pending

/-! ## Part I. Definitions: documents for the claims on the pool and on duplicates -/

/-- The bytes that the loop of `parseBinaries` reads from the `Binary` element
`c` when the XML reader has no error: the decoded text, decompressed when the
attribute `Compressed` is `True`. -/
def binaryData (env : Env) (c : XmlElement) : QByteArray :=
  if eqIgnoreCase (c.attr "Compressed") "True" then (env.decompress (env.fromBase64 c.text)).2
  else env.fromBase64 c.text

/-- The `Binary` elements among `cs` that declare the id `id`. -/
def binariesOf (cs : List XmlElement) (id : String) : List XmlElement :=
  cs.filter (fun c => c.name = "Binary" && c.attr "ID" = id)

/-- A document whose `Binaries` section declares the id `7` twice, with the
bytes [1, 2, 3] and then [4, 5, 6], and whose root group has one entry with an
attachment `file` that refers to the id `7`. -/
def Sample.docTwoBinaries : XmlElement :=
  .plain "KeePassFile" "" [
    .plain "Meta" "" [
      .plain "Binaries" "" [
        .mk "Binary" [("ID", "7")] "AQID" [],
        .mk "Binary" [("ID", "7")] "BAUG" []]],
    .plain "Root" "" [
      .plain "Group" "" [
        .plain "UUID" Sample.uuidA [],
        .plain "Entry" "" [
          .plain "UUID" Sample.uuidC [],
          .plain "Binary" "" [.plain "Key" "file" [], .mk "Value" [("Ref", "7")] "" []]]]]]

/-- What the claims on the pool look at in a final state: the error flag, the
pool, and the attachments of the first entry of the root group. -/
def Reader.observePool (st : Reader) :
    Bool × List (String × QByteArray) × List (String × QByteArray) :=
  (st.hasError, st.m_binaryPool,
    (st.entry ((st.group st.rootGroup).m_entries.headD 0)).m_attachments)

/-- A document whose entry has two `String` elements with the key `Title`, with
the values `one` and `two`. -/
def Sample.docDuplicateString : XmlElement :=
  .plain "KeePassFile" "" [
    .plain "Root" "" [
      .plain "Group" "" [
        .plain "UUID" Sample.uuidA [],
        .plain "Entry" "" [
          .plain "UUID" Sample.uuidC [],
          .plain "String" "" [.plain "Key" "Title" [], .plain "Value" "one" []],
          .plain "String" "" [.plain "Key" "Title" [], .plain "Value" "two" []]]]]]

/-- A document whose entry has two `Binary` elements with the key `file`, the
first with the inline bytes [4, 5, 6], the second with a reference to the pool. -/
def Sample.docDuplicateBinary : XmlElement :=
  .plain "KeePassFile" "" [
    .plain "Root" "" [
      .plain "Group" "" [
        .plain "UUID" Sample.uuidA [],
        .plain "Entry" "" [
          .plain "UUID" Sample.uuidC [],
          .plain "Binary" "" [.plain "Key" "file" [], .plain "Value" "BAUG" []],
          .plain "Binary" "" [.plain "Key" "file" [], .mk "Value" [("Ref", "7")] "" []]]]]]

/-- What the claims on duplicates look at in a final state: the error flag and
text, and for the first entry of the root group the attribute `Title` and the
attachments. -/
def Reader.observeEntry (st : Reader) :
    Bool × String × Option (String × Bool) × List (String × QByteArray) :=
  (st.hasError, st.errorString,
    mapGet "Title" (st.entry ((st.group st.rootGroup).m_entries.headD 0)).m_attributes,
    (st.entry ((st.group st.rootGroup).m_entries.headD 0)).m_attachments)

/-! ## Part I. Definitions: properties kept while one child element is read -/

/-- What places a group in the tree and names it: its tree links and its UUID. -/
def DbGroup.ident (g : DbGroup) : (GroupParent × List Nat × List Nat) × Uuid :=
  (g.links, g.m_uuid)

/-- What places an entry and names it: its owning group, its history and its
UUID. -/
def Entry.ident (e : Entry) : Option Nat × List Nat × Uuid :=
  (e.m_group, e.m_history, e.m_uuid)

/-- A property of the reader state kept by every elementary state change made
while a child element of the group at `group` or of the entry at `entry` is
read through its end, the `UUID` element and the registry lookups apart:
raising an error, changing the data of that group or of that entry without
touching what places and names it, and changing the metadata, the random
source, the cipher, the XML error flag, the header hash, the binary pool and
the tombstones. -/
structure LeafData (group entry : Nat) (P : Reader → Prop) : Prop where
  raiseError : ∀ (st : Reader) (m : String), P st → P (st.raiseError m)
  updGroup : ∀ (st : Reader) (f : DbGroup → DbGroup),
    (∀ g, (f g).ident = g.ident) → P st → P (st.updGroup group f)
  updEntry : ∀ (st : Reader) (f : Entry → Entry),
    (∀ e, (f e).ident = e.ident) → P st → P (st.updEntry entry f)
  setMeta : ∀ (st : Reader) (f : Metadata → Metadata), P st → P (st.setMeta f)
  randomUuid : ∀ (env : Env) (st : Reader), P st → P (st.randomUuid env).2
  cipherProcess : ∀ (env : Env) (st : Reader) (cs c : QByteArray),
    P st → P (st.cipherProcess env cs c).2
  setNullDeref : ∀ (st : Reader), P st → P st.setNullDeref
  setXmlError : ∀ (st : Reader), P st → P st.setXmlError
  setHeaderHash : ∀ (st : Reader) (v : QByteArray), P st → P (st.setHeaderHash v)
  setBinaryPool : ∀ (st : Reader) (v : List (String × QByteArray)),
    P st → P (st.setBinaryPool v)
  addDeletedObject : ∀ (st : Reader) (d : DeletedObject), P st → P (st.addDeletedObject d)

/-- A property of the reader state kept by the state changes of `LeafData` and
by the registry lookups `getGroup` and `getEntry`. -/
structure LeafAt (group entry : Nat) (P : Reader → Prop) extends LeafData group entry P :
    Prop where
  getGroup : ∀ (st : Reader) (u : Uuid), P st → P (getGroup u st).2
  getEntry : ∀ (st : Reader) (u : Uuid), P st → P (getEntry u st).2

/-! ## Part I. Definitions: the two heaps during a decode -/

/-- The state `r` comes from the state `st` by reading child elements of the
entry at `t` and history entries: the groups and the registries are the same,
an error stays, every entry of `st` but the one at `t` is as it was, the entry
at `t` has the history it had, and every entry made since has no history. -/
structure EntryFrame (t : Nat) (st r : Reader) : Prop where
  groups : r.groups = st.groups
  m_groups : r.m_groups = st.m_groups
  m_entries : r.m_entries = st.m_entries
  strict : r.m_strictMode = st.m_strictMode
  root : r.rootGroup = st.rootGroup
  tmp : r.m_tmpParent = st.m_tmpParent
  err : st.hasError = true → r.hasError = true
  len : st.entries.length ≤ r.entries.length
  old : ∀ q, q < st.entries.length → q ≠ t → r.entry q = st.entry q
  own : (r.entry t).m_history = (st.entry t).m_history
  new : ∀ q, st.entries.length ≤ q → (r.entry q).m_history = []

/-- What holds of the two heaps and the two registries between two steps of
every decode: a registry maps a UUID, never null, to an object of its heap that
carries this UUID; a history item is an entry of the heap outside the registry
and without history of its own, and in Lenient mode it carries the UUID of the
entry whose history holds it; and as long as no error is raised, every child
of a group is a group of the registry and every entry of a group is an entry
of the registry. -/
structure HeapInv (st : Reader) : Prop where
  greg_lt : ∀ u p, mapGet u st.m_groups = some p → p < st.groups.length
  greg_uuid : ∀ u p, mapGet u st.m_groups = some p →
    (st.group p).m_uuid = u ∧ u.isNull = false
  ereg_lt : ∀ u e, mapGet u st.m_entries = some e → e < st.entries.length
  ereg_uuid : ∀ u e, mapGet u st.m_entries = some e →
    (st.entry e).m_uuid = u ∧ u.isNull = false
  hist_lt : ∀ e h, h ∈ (st.entry e).m_history → h < st.entries.length
  hist_nil : ∀ e h, h ∈ (st.entry e).m_history → (st.entry h).m_history = []
  hist_unreg : ∀ e h, h ∈ (st.entry e).m_history → ∀ u, mapGet u st.m_entries ≠ some h
  hist_uuid : st.m_strictMode = false → ∀ e h, h ∈ (st.entry e).m_history →
    (st.entry h).m_uuid = (st.entry e).m_uuid
  kids : st.hasError = false → ∀ p c, c ∈ (st.group p).m_children →
    ∃ u, mapGet u st.m_groups = some c
  ents : st.hasError = false → ∀ p e, e ∈ (st.group p).m_entries →
    ∃ u, mapGet u st.m_entries = some e

/-- The entry at `t` is one under construction: it is in the heap, outside the
registry, without history, and in no history. -/
structure FreshE (st : Reader) (t : Nat) : Prop where
  lt : t < st.entries.length
  nil : (st.entry t).m_history = []
  unhist : ∀ e, t ∉ (st.entry e).m_history
  unreg : ∀ u, mapGet u st.m_entries ≠ some t

/-- The group at `t` is one under construction: it is in the heap and outside
the registry. -/
structure FreshG (st : Reader) (t : Nat) : Prop where
  lt : t < st.groups.length
  unreg : ∀ u, mapGet u st.m_groups ≠ some t

/-- The state `r` comes after the state `st` in a decode: the heaps and the
registries have grown, what has joined a registry is an object made since, an
error stays, the mode is the same, and every object of the heaps of `st` has
the UUID it had, but for the group at `xg`. -/
structure HeapExt (xg : Nat) (st r : Reader) : Prop where
  glen : st.groups.length ≤ r.groups.length
  elen : st.entries.length ≤ r.entries.length
  guuid : ∀ q, q < st.groups.length → q ≠ xg → (r.group q).m_uuid = (st.group q).m_uuid
  euuid : ∀ q, q < st.entries.length → (r.entry q).m_uuid = (st.entry q).m_uuid
  greg : ∀ u p, mapGet u st.m_groups = some p → mapGet u r.m_groups = some p
  ereg : ∀ u e, mapGet u st.m_entries = some e → mapGet u r.m_entries = some e
  gnew : ∀ u p, mapGet u r.m_groups = some p →
    mapGet u st.m_groups = some p ∨ st.groups.length ≤ p
  enew : ∀ u e, mapGet u r.m_entries = some e →
    mapGet u st.m_entries = some e ∨ st.entries.length ≤ e
  err : st.hasError = true → r.hasError = true
  strict : r.m_strictMode = st.m_strictMode

/-- The groups and entries that a `Group` element has read so far are objects of
the registries, as long as no error is raised. -/
def LocalsOk (st : Reader) (l : GroupLocals) : Prop :=
  st.hasError = false →
    (∀ c ∈ l.children, ∃ u, mapGet u st.m_groups = some c) ∧
    (∀ e ∈ l.entries, ∃ u, mapGet u st.m_entries = some e)

/-- The entry at `h` may join the history of the entry at `e`: it is in the
heap, outside the registry, without history, not `e`, and in no history but
that of `e`. -/
structure ItemOk (st : Reader) (e h : Nat) : Prop where
  lt : h < st.entries.length
  nil : (st.entry h).m_history = []
  unreg : ∀ u, mapGet u st.m_entries ≠ some h
  ne : h ≠ e
  own : ∀ x, h ∈ (st.entry x).m_history → x = e


/-- One round of the loop over the history items of `parseEntry`. -/
def addHistoryItem (entry historyItem : Nat) (st : Reader) : Reader :=
  (if (st.entry historyItem).m_uuid ≠ (st.entry entry).m_uuid then
      if st.m_strictMode then st.raiseError "History element with different uuid"
      else st.updEntry historyItem (fun e => { e with m_uuid := (st.entry entry).m_uuid })
    else st).updEntry entry (fun e => { e with m_history := e.m_history ++ [historyItem] })


/-- What holds while the child elements of a `Group` element are read, with the
local group at `t` and the locals `l`, since the state `a`: the state of the
heaps, the local group under construction, the groups and entries read in the
registries, and the heaps of `a` extended. -/
structure GroupAt (x : Nat) (a : Reader) (t : Nat) (l : GroupLocals) (s : Reader) : Prop where
  inv : HeapInv s
  fresh : FreshG s t
  locals : LocalsOk s l
  ext : HeapExt x a s

/-- The state of the heaps, and with the flag `ok` set the root group of the
database in the registry, unless an error is raised. -/
def RootOk (ok : Bool) (st : Reader) : Prop :=
  HeapInv st ∧
    (ok = true → st.hasError = false → ∃ u, mapGet u st.m_groups = some st.rootGroup)

/-- What places and names the objects of a reader state: the tree links and the
UUID of every group, the owning group, the history and the UUID of every
entry, the registries, the sizes of the heaps, the mode, the error state and
the root group. -/
def Reader.idents (s : Reader) :
    (Nat → (GroupParent × List Nat × List Nat) × Uuid) × (Nat → Option Nat × List Nat × Uuid) ×
      List (Uuid × Nat) × List (Uuid × Nat) × Nat × Nat × Bool × Bool × Bool × Nat :=
  (fun p => (s.group p).ident, fun e => (s.entry e).ident, s.m_groups, s.m_entries,
    s.groups.length, s.entries.length, s.m_strictMode, s.m_error, s.xmlError, s.rootGroup)

/-! ## Part I. Definitions: documents and observations for the claims on errors -/

/-- A document whose `Root` element has two `Group` elements. -/
def Sample.docTwoRootGroups : XmlElement :=
  .plain "KeePassFile" "" [
    .plain "Root" "" [
      .plain "Group" "" [.plain "UUID" Sample.uuidA []],
      .plain "Group" "" [.plain "UUID" Sample.uuidB []]]]

/-- A document with two `Root` elements, each with one `Group` element. -/
def Sample.docTwoRoots : XmlElement :=
  .plain "KeePassFile" "" [
    .plain "Root" "" [.plain "Group" "" [.plain "UUID" Sample.uuidA []]],
    .plain "Root" "" [.plain "Group" "" [.plain "UUID" Sample.uuidB []]]]

/-- The error flag and the error text of a final state. -/
def Reader.observeError (st : Reader) : Bool × String :=
  (st.hasError, st.errorString)

/-- The document element has two `Root` elements or more. -/
def hasSecondRoot (doc : XmlElement) : Bool :=
  decide (2 ≤ (doc.children.filter (fun c => c.name = "Root")).length)

/-- A `Root` element of the document has two `Group` elements or more. -/
def hasSecondRootGroup (doc : XmlElement) : Bool :=
  doc.children.any (fun c => c.name = "Root" &&
    decide (2 ≤ (c.children.filter (fun g => g.name = "Group")).length))

/-- A document whose root group has the UUID `Sample.uuidA` and an entry whose
`UUID` element is empty. -/
def Sample.docEntryEmptyUuid : XmlElement :=
  .plain "KeePassFile" "" [
    .plain "Root" "" [
      .plain "Group" "" [
        .plain "UUID" Sample.uuidA [],
        .plain "Entry" "" [.plain "UUID" "" []]]]]

/-- A document whose root group has no `UUID` element, and no entry. -/
def Sample.docGroupNoUuid : XmlElement :=
  .plain "KeePassFile" "" [
    .plain "Root" "" [.plain "Group" "" [.plain "Name" "root" []]]]

/-- What the claim on null UUIDs looks at in a final state: the error flag and
text, the UUID of the root group and the UUIDs of its entries. -/
def Reader.observeUuids (st : Reader) : Bool × String × Uuid × List Uuid :=
  (st.hasError, st.errorString, (st.group st.rootGroup).m_uuid,
    (st.group st.rootGroup).m_entries.map (fun e => (st.entry e).m_uuid))

/-- A document whose entry, with the UUID `Sample.uuidC`, has one history item
with the UUID `Sample.uuidB`. -/
def Sample.docHistoryUuid : XmlElement :=
  .plain "KeePassFile" "" [
    .plain "Root" "" [
      .plain "Group" "" [
        .plain "UUID" Sample.uuidA [],
        .plain "Entry" "" [
          .plain "UUID" Sample.uuidC [],
          .plain "History" "" [.plain "Entry" "" [.plain "UUID" Sample.uuidB []]]]]]]

/-- A document whose entry has a history item that has a `History` element of
its own. -/
def Sample.docNestedHistory : XmlElement :=
  .plain "KeePassFile" "" [
    .plain "Root" "" [
      .plain "Group" "" [
        .plain "UUID" Sample.uuidA [],
        .plain "Entry" "" [
          .plain "UUID" Sample.uuidC [],
          .plain "History" "" [
            .plain "Entry" "" [
              .plain "UUID" Sample.uuidC [],
              .plain "History" "" [.plain "Entry" "" [.plain "UUID" Sample.uuidC []]]]]]]]]

/-- What the claims on history look at in a final state: the error flag and
text, and for each entry of the root group its UUID and, for each of its
history items, the UUID and the history of the item. -/
def Reader.observeHistory (st : Reader) :
    Bool × String × List (Uuid × List (Uuid × List Nat)) :=
  (st.hasError, st.errorString,
    (st.group st.rootGroup).m_entries.map (fun e =>
      ((st.entry e).m_uuid,
        (st.entry e).m_history.map (fun h => ((st.entry h).m_uuid, (st.entry h).m_history)))))

/-- A state in Strict mode with two entries, the second with another UUID than
the first. -/
def Sample.stateTwoEntries : Reader :=
  ((Reader.start true [] none Sample.docHistoryUuid).newEntry.2.newEntry.2).updEntry 1
    (fun e => { e with m_uuid := Env.sample.randomUuid 0 })

/-! ## Part I. Definitions: the elements of a document that a decode reads as
groups and entries -/

/-- Some `Entry` element among the child elements `cs` of a `History` element
fails the check `eBad` of history entries on its child elements. -/
def anyHistoryEntry (eBad : Bool → List XmlElement → Bool) (cs : List XmlElement) : Bool :=
  cs.any (fun x => x.name = "Entry" && eBad true x.children)

/-- Some history entry of an `Entry` element outside history with the child
elements `cs` fails the check: an `Entry` element in one of its `History`
elements. -/
def anyUnderEntry (eBad : Bool → List XmlElement → Bool) (cs : List XmlElement) : Bool :=
  cs.any (fun c => c.name = "History" && anyHistoryEntry eBad c.children)

mutual
/-- The child element of a `Group` element, when it is a `Group` or an `Entry`
element, or an element below it that the reader decodes as a group or an entry,
fails its check: `gBad` on the child elements of a `Group` element, `eBad` with
the history flag on the child elements of an `Entry` element. -/
def XmlElement.anyUnderGroup (gBad : List XmlElement → Bool)
    (eBad : Bool → List XmlElement → Bool) : XmlElement → Bool
  | .mk n _ _ cs =>
    if n = "Group" then gBad cs || anyUnderGroupList gBad eBad cs
    else if n = "Entry" then eBad false cs || anyUnderEntry eBad cs
    else false
/-- The same for the child elements `cs` of a `Group` element. -/
def anyUnderGroupList (gBad : List XmlElement → Bool)
    (eBad : Bool → List XmlElement → Bool) : List XmlElement → Bool
  | [] => false
  | x :: xs => x.anyUnderGroup gBad eBad || anyUnderGroupList gBad eBad xs
end

/-- Some element of the document that the reader decodes as a group or an entry
fails its check: the `Group` elements of the `Root` elements and what is below
them. -/
def anyInDocument (gBad : List XmlElement → Bool) (eBad : Bool → List XmlElement → Bool)
    (doc : XmlElement) : Bool :=
  (rootGroups doc.children).any (fun g => gBad g.children || anyUnderGroupList gBad eBad g.children)

/-- The UUID that `readUuid` returns for the element `c` as long as the XML
reader has no error: the bytes of the text when there are sixteen, else the
null UUID. -/
def uuidOfText (env : Env) (c : XmlElement) : Uuid :=
  if (env.fromBase64 c.text).isEmpty then Uuid.null
  else if (env.fromBase64 c.text).length ≠ Uuid.Length then Uuid.null
  else ⟨env.fromBase64 c.text⟩

/-- The UUID left by the `UUID` elements among the child elements `cs`, from
the UUID `u`: that of the last of them, and `u` when there is none. -/
def lastUuid (env : Env) (u : Uuid) (cs : List XmlElement) : Uuid :=
  cs.foldl (fun v c => if c.name = "UUID" then uuidOfText env c else v) u

/-- The own UUID of a `Group` or `Entry` element with the child elements `cs`:
that of its last `UUID` element, and the null UUID when it has none. -/
def ownUuid (env : Env) (cs : List XmlElement) : Uuid :=
  lastUuid env Uuid.null cs

/-- Some `Group` or `Entry` element that the reader decodes as a group or an
entry, history entries included, has a null UUID of its own. -/
def hasNullUuid (env : Env) (doc : XmlElement) : Bool :=
  anyInDocument (fun cs => (ownUuid env cs).isNull) (fun _ cs => (ownUuid env cs).isNull) doc

/-- The error state of the reader: the flag and the text of `raiseError`, and
the error flag of the XML reader. -/
def Reader.errorState (s : Reader) : Bool × String × Bool :=
  (s.m_error, s.m_errorStr, s.xmlError)

/-- Some history entry that the reader decodes has a `History` element among
its child elements. -/
def hasNestedHistory (doc : XmlElement) : Bool :=
  anyInDocument (fun _ => false) (fun h cs => h && cs.any (fun c => c.name = "History")) doc

/-- The code of `readDatabase` before the test of `rootGroupParsed`: the flag
that `parseKeePassFile` returns, false when the document element is no
`KeePassFile` element, and the state reached. -/
def parseStage (env : Env) (fuel : Nat) (strictMode : Bool)
    (binaryPool : List (String × QByteArray)) (randomStream : Option QByteArray)
    (doc : XmlElement) : Option (Bool × Reader) :=
  match readNextStartElement (Reader.start strictMode binaryPool randomStream doc) with
  | (some x, st1) => if x.name = "KeePassFile" then parseKeePassFile env fuel st1 else some (false, st1)
  | (none, st1) => some (false, st1)

/-- Source `unmappedKeys` of `readDatabase`: the pool ids that entries refer to
and that the pool does not hold. -/
def Reader.unmappedKeys (st : Reader) : List String :=
  (st.m_binaryMap.map (fun r => r.1)).filter (fun k => !(st.m_binaryPool.map (fun p => p.1)).contains k)

/-- Source `unusedKeys` of `readDatabase`: the ids of the pool that no entry
refers to. -/
def Reader.unusedKeys (st : Reader) : List String :=
  (st.m_binaryPool.map (fun p => p.1)).filter (fun k => !(st.m_binaryMap.map (fun r => r.1)).contains k)

/-! ## Part I. Definitions: documents for the claims on error messages and on
the keystream cipher -/

/-- A document whose root group has the UUID `Sample.uuidA` and one entry with
the UUID `Sample.uuidC` and then the given child elements. -/
def Sample.docEntryWith (entryChildren : List XmlElement) : XmlElement :=
  .plain "KeePassFile" "" [
    .plain "Root" "" [
      .plain "Group" "" [
        .plain "UUID" Sample.uuidA [],
        .plain "Entry" "" (.plain "UUID" Sample.uuidC [] :: entryChildren)]]]

/-- The document `Sample.docEntryWith` with a second `Group` element in its
`Root` element. -/
def Sample.docSecondGroupWith (entryChildren : List XmlElement) : XmlElement :=
  .plain "KeePassFile" "" [
    .plain "Root" "" [
      .plain "Group" "" [
        .plain "UUID" Sample.uuidA [],
        .plain "Entry" "" (.plain "UUID" Sample.uuidC [] :: entryChildren)],
      .plain "Group" "" [.plain "UUID" Sample.uuidB []]]]

/-- A `String` element with the given key and a `Value` element marked
`Protected="True"` with the given text. -/
def Sample.protectedString (key text : String) : XmlElement :=
  .plain "String" "" [.plain "Key" key [], .mk "Value" [("Protected", "True")] text []]

/-- A `Binary` element with the given key and an inline `Value` element marked
`Protected="True"` with the given text. -/
def Sample.protectedBinary (key text : String) : XmlElement :=
  .plain "Binary" "" [.plain "Key" key [], .mk "Value" [("Protected", "True")] text []]

/-- A document whose root group has two elements with invalid values, first
`EnableAutoType` and then `EnableSearching`. -/
def Sample.docTwoErrors : XmlElement :=
  .plain "KeePassFile" "" [
    .plain "Root" "" [
      .plain "Group" "" [
        .plain "UUID" Sample.uuidA [],
        .plain "EnableAutoType" "bogus" [],
        .plain "EnableSearching" "bogus" []]]]

/-- A document without `Root` element, whose metadata holds an invalid number. -/
def Sample.docErrorNoRoot : XmlElement :=
  .plain "KeePassFile" "" [.plain "Meta" "" [.plain "HistoryMaxItems" "many" []]]

/-! ## Part I. Definitions: the base64 text of a byte string and the value of
its bytes, for the claim on tick counts -/

/-- The base64 character of a six-bit value. -/
def Spec.base64Char (v : Nat) : Char :=
  "ABCDEFGHIJKLMNOPQRSTUVWXYZabcdefghijklmnopqrstuvwxyz0123456789+/".data.getD v '/'

/-- The characters of the base64 text of a byte string: four characters for
every three bytes, the last group filled up with `=`. -/
def Spec.toBase64Chars : List Nat → List Char
  | [] => []
  | [a] => [Spec.base64Char (a / 4), Spec.base64Char (a % 4 * 16), '=', '=']
  | [a, b] =>
    [Spec.base64Char (a / 4), Spec.base64Char (a % 4 * 16 + b / 16),
      Spec.base64Char (b % 16 * 4), '=']
  | a :: b :: c :: rest =>
    Spec.base64Char (a / 4) :: Spec.base64Char (a % 4 * 16 + b / 16) ::
      Spec.base64Char (b % 16 * 4 + c / 64) :: Spec.base64Char (c % 64) ::
      Spec.toBase64Chars rest

/-- The base64 text of a byte string, as the claim on tick counts names it. -/
def Spec.toBase64 (bytes : QByteArray) : String :=
  String.mk (Spec.toBase64Chars bytes)

/-- A byte string read in little-endian order as a natural number. -/
def Spec.littleEndian : QByteArray → Nat
  | [] => 0
  | b :: rest => b + 256 * Spec.littleEndian rest

/-- A number below 2^64 read as a signed 64-bit integer in two's complement. -/
def Spec.signed64 (u : Nat) : Int :=
  if u < 2 ^ 63 then (u : Int) else (u : Int) - 2 ^ 64

/-! ## Part I. Definitions: numbers with a sign, colours and icon numbers -/

/-- A reading of digits behind an optional sign `+` or `-`, standing for
`QString::toInt` on such texts: the conversion of Qt reads a signed number, so
it accepts a sign in every base. -/
def signedToInt (base : Nat) (s : String) : Option Int :=
  match s.data with
  | '-' :: ds => if ds.isEmpty then none else (digitsValue base ds 0).map (fun n => - Int.ofNat n)
  | '+' :: ds => if ds.isEmpty then none else (digitsValue base ds 0).map Int.ofNat
  | ds => if ds.isEmpty then none else (digitsValue base ds 0).map Int.ofNat

/-- The environment `Env.sample` with numbers read with their sign. -/
def Env.signed : Env :=
  { Env.sample with toInt := signedToInt 10, toIntHex := signedToInt 16 }

/-- The value of a hexadecimal digit, `none` for any other character. -/
def Spec.hexDigit (c : Char) : Option Nat :=
  if '0' ≤ c ∧ c ≤ '9' then some (c.toNat - 48)
  else if 'a' ≤ c ∧ c ≤ 'f' then some (c.toNat - 87)
  else if 'A' ≤ c ∧ c ≤ 'F' then some (c.toNat - 55)
  else none

/-- The value of a text of two hexadecimal digits, `none` for any other text. -/
def Spec.hexPair (s : String) : Option Int :=
  match s.data with
  | [a, b] =>
    match Spec.hexDigit a, Spec.hexDigit b with
    | some va, some vb => some (Int.ofNat (16 * va + vb))
    | _, _ => none
  | _ => none

/-- The text is `#` followed by exactly six hexadecimal digits. -/
def Spec.isHexColor (s : String) : Bool :=
  s.length = 7 && s.data.head? = some '#' && (Spec.hexPair (mid2 s 1)).isSome &&
    (Spec.hexPair (mid2 s 3)).isSome && (Spec.hexPair (mid2 s 5)).isSome

/-- The number that `readNumber` returns for the element `c` as long as the XML
reader has no error. -/
def numberOfText (env : Env) (c : XmlElement) : Int :=
  (env.toInt c.text).getD 0

/-- Some `IconID` element among the child elements `cs` holds a negative
number. -/
def negativeIcon (env : Env) (cs : List XmlElement) : Bool :=
  cs.any (fun c => c.name = "IconID" && decide (numberOfText env c < 0))

/-- Some `Group` or `Entry` element that the reader decodes as a group or an
entry, history entries included, has an `IconID` element with a negative
number. -/
def hasNegativeIcon (env : Env) (doc : XmlElement) : Bool :=
  anyInDocument (negativeIcon env) (fun _ cs => negativeIcon env cs) doc

/-- A document whose root group and whose entry both have an `IconID` element
with the given text. -/
def Sample.docIcons (icon : String) : XmlElement :=
  .plain "KeePassFile" "" [
    .plain "Root" "" [
      .plain "Group" "" [
        .plain "UUID" Sample.uuidA [],
        .plain "IconID" icon [],
        .plain "Entry" "" [.plain "UUID" Sample.uuidC [], .plain "IconID" icon []]]]]

/-- What the claim on icon numbers looks at in a final state: the error flag
and text, the icon number of the root group and those of its entries. -/
def Reader.observeIcons (st : Reader) : Bool × String × Int × List Int :=
  (st.hasError, st.errorString, (st.group st.rootGroup).m_iconNumber,
    (st.group st.rootGroup).m_entries.map (fun e => (st.entry e).m_iconNumber))

/-! ## Part I. Definitions: documents for the claims on elements with the same
UUID and on history items -/

/-- A document with two `Group` elements of the UUID `Sample.uuidB`: the first,
named `first`, under the root group, the second, named `second`, under the
group of the UUID `Sample.uuidC`. -/
def Sample.docSameGroupUuid : XmlElement :=
  .plain "KeePassFile" "" [
    .plain "Root" "" [
      .plain "Group" "" [
        .plain "UUID" Sample.uuidA [],
        .plain "Group" "" [.plain "UUID" Sample.uuidB [], .plain "Name" "first" []],
        .plain "Group" "" [
          .plain "UUID" Sample.uuidC [],
          .plain "Name" "other" [],
          .plain "Group" "" [.plain "UUID" Sample.uuidB [], .plain "Name" "second" []]]]]]

/-- A document with two `Entry` elements of the UUID `Sample.uuidC`: the first,
with the tags `first`, in the root group, the second, with the tags `second`, in
the group of the UUID `Sample.uuidB`. -/
def Sample.docSameEntryUuid : XmlElement :=
  .plain "KeePassFile" "" [
    .plain "Root" "" [
      .plain "Group" "" [
        .plain "UUID" Sample.uuidA [],
        .plain "Entry" "" [.plain "UUID" Sample.uuidC [], .plain "Tags" "first" []],
        .plain "Group" "" [
          .plain "UUID" Sample.uuidB [],
          .plain "Entry" "" [.plain "UUID" Sample.uuidC [], .plain "Tags" "second" []]]]]]

/-- A document whose entry, with the tags `now`, has a history item with the
same UUID and the tags `old`. -/
def Sample.docHistorySameUuid : XmlElement :=
  .plain "KeePassFile" "" [
    .plain "Root" "" [
      .plain "Group" "" [
        .plain "UUID" Sample.uuidA [],
        .plain "Entry" "" [
          .plain "UUID" Sample.uuidC [],
          .plain "Tags" "now" [],
          .plain "History" "" [
            .plain "Entry" "" [.plain "UUID" Sample.uuidC [], .plain "Tags" "old" []]]]]]]

/-- What the claim on groups with the same UUID looks at in a final state: the
error flag and text, the registry of groups, and for each group of the database
its position, name, parent and child list. -/
def Reader.observeGroups (st : Reader) :
    Bool × String × List (Uuid × Nat) × List (Nat × String × GroupParent × List Nat) :=
  (st.hasError, st.errorString, st.m_groups,
    st.vaultGroups.map (fun g =>
      (g, (st.group g).m_name, (st.group g).m_parent, (st.group g).m_children)))

/-- What the claims on entries with the same UUID and on history items look at
in a final state: the error flag and text, the registry of entries, for each
group of the database its position and entry list, and for each entry of the
database its position, tags and owning group, and for each of its history
items the position, the UUID and the tags. -/
def Reader.observeEntries (st : Reader) :
    Bool × String × List (Uuid × Nat) × List (Nat × List Nat) ×
      List (Nat × String × Option Nat × List (Nat × Uuid × String)) :=
  (st.hasError, st.errorString, st.m_entries,
    st.vaultGroups.map (fun g => (g, (st.group g).m_entries)),
    st.vaultEntries.map (fun e =>
      (e, (st.entry e).m_tags, (st.entry e).m_group,
        (st.entry e).m_history.map (fun h => (h, (st.entry h).m_uuid, (st.entry h).m_tags)))))

/-- A state in which the UUID `u` is in the registry of groups, with a
placeholder at 2, and a local group at 3 carries `u` and the name `later`. -/
def Sample.stateGroupMerge (u : Uuid) : Reader :=
  ((getGroup u (Reader.start true [] none Sample.docStray)).2.newGroup.2).updGroup 3
    (fun g => { g with m_uuid := u, m_name := "later" })

/-- A state in which the UUID `u` is in the registry of entries, with a
placeholder at 0, and a local entry at 1 carries `u` and the tags `later`. -/
def Sample.stateEntryMerge (u : Uuid) : Reader :=
  ((getEntry u (Reader.start true [] none Sample.docStray)).2.newEntry.2).updEntry 1
    (fun e => { e with m_uuid := u, m_tags := "later" })

/-- The base64 text of the UUID with bytes 48 to 63. -/
def Sample.uuidD : String := "MDEyMzQ1Njc4OTo7PD0+Pw=="

/-- A document with two `Group` elements of the UUID `Sample.uuidB` under two
groups side by side: the first, named `first`, under the group of the UUID
`Sample.uuidC`, the second, named `second`, under the group of the UUID
`Sample.uuidD`. -/
def Sample.docSameGroupUuidApart : XmlElement :=
  .plain "KeePassFile" "" [
    .plain "Root" "" [
      .plain "Group" "" [
        .plain "UUID" Sample.uuidA [],
        .plain "Group" "" [
          .plain "UUID" Sample.uuidC [],
          .plain "Group" "" [.plain "UUID" Sample.uuidB [], .plain "Name" "first" []]],
        .plain "Group" "" [
          .plain "UUID" Sample.uuidD [],
          .plain "Group" "" [.plain "UUID" Sample.uuidB [], .plain "Name" "second" []]]]]]

/-- A document with two `Entry` elements of the UUID `Sample.uuidC` in two
groups side by side: the first, with the tags `first`, in the group of the UUID
`Sample.uuidB`, the second, with the tags `second`, in the group of the UUID
`Sample.uuidD`. -/
def Sample.docSameEntryUuidApart : XmlElement :=
  .plain "KeePassFile" "" [
    .plain "Root" "" [
      .plain "Group" "" [
        .plain "UUID" Sample.uuidA [],
        .plain "Group" "" [
          .plain "UUID" Sample.uuidB [],
          .plain "Entry" "" [.plain "UUID" Sample.uuidC [], .plain "Tags" "first" []]],
        .plain "Group" "" [
          .plain "UUID" Sample.uuidD [],
          .plain "Entry" "" [.plain "UUID" Sample.uuidC [], .plain "Tags" "second" []]]]]]

/-- What the claims on entries with the same UUID look at first in a final
state: the error flag and text, the registry of entries, and for each group of
the database its position and entry list. -/
def Reader.observeRegistry (st : Reader) :
    Bool × String × List (Uuid × Nat) × List (Nat × List Nat) :=
  (st.hasError, st.errorString, st.m_entries,
    st.vaultGroups.map (fun g => (g, (st.group g).m_entries)))

/-- For each entry of the database its position, tags and owning group. -/
def Reader.observeOwners (st : Reader) : List (Nat × String × Option Nat) :=
  st.vaultEntries.map (fun e => (e, (st.entry e).m_tags, (st.entry e).m_group))

/-! ## Part I. Definitions: properties kept by every step that leaves the cipher alone -/

/-- A property of the reader state kept by every elementary state change made
while one child element is read through its end, the call of the keystream
cipher apart: the state changes of `StableLeaf` without `cipherProcess`. -/
structure QuietLeaf (P : Reader → Prop) : Prop where
  raiseError : ∀ (st : Reader) (m : String), P st → P (st.raiseError m)
  updGroup : ∀ (st : Reader) (p : Nat) (f : DbGroup → DbGroup),
    (∀ g, (f g).links = g.links) → P st → P (st.updGroup p f)
  updEntry : ∀ (st : Reader) (p : Nat) (f : Entry → Entry),
    (∀ e, (f e).m_group = e.m_group) → P st → P (st.updEntry p f)
  setMeta : ∀ (st : Reader) (f : Metadata → Metadata), P st → P (st.setMeta f)
  getGroup : ∀ (st : Reader) (u : Uuid), P st → P (getGroup u st).2
  getEntry : ∀ (st : Reader) (u : Uuid), P st → P (getEntry u st).2
  randomUuid : ∀ (env : Env) (st : Reader), P st → P (st.randomUuid env).2
  setNullDeref : ∀ (st : Reader), P st → P st.setNullDeref
  setXmlError : ∀ (st : Reader), P st → P st.setXmlError
  setHeaderHash : ∀ (st : Reader) (v : QByteArray), P st → P (st.setHeaderHash v)
  setBinaryPool : ∀ (st : Reader) (v : List (String × QByteArray)),
    P st → P (st.setBinaryPool v)
  addDeletedObject : ∀ (st : Reader) (d : DeletedObject), P st → P (st.addDeletedObject d)

/-- A property of the reader state kept by every elementary state change of a
decode, the call of the keystream cipher apart: those of `QuietLeaf` and the
state changes that `Stable` adds to `StableLeaf`. -/
structure Quiet (P : Reader → Prop) extends QuietLeaf P : Prop where
  setPending : ∀ (st : Reader) (q : List (List XmlElement)), P st → P (st.setPending q)
  newGroup : ∀ (st : Reader), P st → P st.newGroup.2
  newEntry : ∀ (st : Reader), P st → P st.newEntry.2
  defGroup : ∀ (st : Reader) (u : Uuid) (p : Nat), mapGet u st.m_groups = some p →
    P st → P (st.defGroup u p)
  defEntry : ∀ (st : Reader) (u : Uuid) (p : Nat), mapGet u st.m_entries = some p →
    P st → P (st.defEntry u p)
  setParent : ∀ (st : Reader) (c p : Nat), P st → P (st.setParent c p)
  setGroup : ∀ (st : Reader) (e p : Nat), P st → P (st.setGroup e p)
  setRootGroup : ∀ (st : Reader) (p : Nat), P st → P (st.setRootGroup p)
  addBinaryRefs : ∀ (st : Reader) (v : List (String × Nat × String)),
    P st → P (st.addBinaryRefs v)

/-! ## Part I. Definitions: the ciphertexts that a document hands to the
keystream cipher, for the claim on the order of the cipher calls -/

/-- The ciphertext of a child element `c` of a `String` element, as the claim
names it: the base64-decoded text of a `Value` element marked
`Protected="True"` that has text; nothing for any other element. -/
def Spec.stringValueCiphertext (env : Env) (c : XmlElement) : List QByteArray :=
  if c.name = "Value" ∧ c.attr "Protected" = "True" ∧ c.text ≠ "" then [env.fromBase64 c.text]
  else []

/-- The ciphertext of a child element `c` of a `Binary` element, as the claim
names it: the base64-decoded text of an inline `Value` element, one without
`Ref` attribute, marked `Protected="True"` whose decoded bytes are not empty;
nothing for any other element. -/
def Spec.binaryValueCiphertext (env : Env) (c : XmlElement) : List QByteArray :=
  if c.name = "Value" ∧ c.hasAttribute "Ref" = false ∧ c.attr "Protected" = "True" ∧
      env.fromBase64 c.text ≠ [] then [env.fromBase64 c.text]
  else []

/-- The ciphertexts of a child element `c` of an `Entry` element that is a
`String` or a `Binary` element, in the order of its `Value` elements. -/
def Spec.fieldCiphertexts (env : Env) (c : XmlElement) : List QByteArray :=
  if c.name = "String" then c.children.flatMap (Spec.stringValueCiphertext env)
  else if c.name = "Binary" then c.children.flatMap (Spec.binaryValueCiphertext env)
  else []

/-- The ciphertexts of the `String` and `Binary` elements among the child
elements `cs` of a history entry, in document order. -/
def Spec.fieldsCiphertexts (env : Env) (cs : List XmlElement) : List QByteArray :=
  cs.flatMap (Spec.fieldCiphertexts env)

/-- The ciphertexts of the history entries among the child elements `cs` of a
`History` element, in document order. -/
def Spec.historyCiphertexts (env : Env) (cs : List XmlElement) : List QByteArray :=
  cs.flatMap (fun h => if h.name = "Entry" then Spec.fieldsCiphertexts env h.children else [])

/-- The ciphertexts of an `Entry` element outside history with the child
elements `cs`, in document order: those of its `String` and `Binary` elements
and, where a `History` element stands, those of its history entries. -/
def Spec.entryCiphertexts (env : Env) (cs : List XmlElement) : List QByteArray :=
  cs.flatMap (fun c =>
    if c.name = "History" then Spec.historyCiphertexts env c.children
    else Spec.fieldCiphertexts env c)

mutual
/-- The ciphertexts of a child element of a `Group` element, in document
order: those of the entries and groups below it when it is a `Group` element,
its own when it is an `Entry` element, nothing for any other element. -/
def XmlElement.ciphertextsUnderGroup (env : Env) : XmlElement → List QByteArray
  | .mk n _ _ cs =>
    if n = "Group" then ciphertextsOfGroupList env cs
    else if n = "Entry" then Spec.entryCiphertexts env cs
    else []
/-- The same for the child elements `cs` of a `Group` element. -/
def ciphertextsOfGroupList (env : Env) : List XmlElement → List QByteArray
  | [] => []
  | x :: xs => x.ciphertextsUnderGroup env ++ ciphertextsOfGroupList env xs
end

/-- The ciphertexts of the child elements `cs` of a `Root` element: those of
its `Group` elements. -/
def Spec.rootCiphertexts (env : Env) (cs : List XmlElement) : List QByteArray :=
  cs.flatMap (fun g => if g.name = "Group" then ciphertextsOfGroupList env g.children else [])

/-- The ciphertexts of a document, as the claim names them: for each `String`
value and each inline `Binary` value of the entries of the document, history
entries included, that is marked `Protected="True"` and is not empty, its
base64-decoded content, in document order. -/
def Spec.documentCiphertexts (env : Env) (doc : XmlElement) : List QByteArray :=
  doc.children.flatMap (fun r =>
    if r.name = "Root" then Spec.rootCiphertexts env r.children else [])

/-- A `String` element with the given key and a `Value` element with the given
attributes and text. -/
def Sample.stringWith (key : String) (attributes : List (String × String)) (text : String) :
    XmlElement :=
  .plain "String" "" [.plain "Key" key [], .mk "Value" attributes text []]

/-- A document with two entries. The first has a protected string with the
bytes 1, 2, 3, a protected string without text, a string marked
`ProtectInMemory="True"` only, a protected string whose text `=` decodes to no
byte, a history entry with a protected string with the byte 9, a protected
inline binary with the bytes 4, 5, a protected inline binary whose text `=`
decodes to no byte, and a binary with a pool reference marked protected. The
second, in a nested group, has a protected string with the byte 7. -/
def Sample.docProtected : XmlElement :=
  .plain "KeePassFile" "" [
    .plain "Root" "" [
      .plain "Group" "" [
        .plain "UUID" Sample.uuidA [],
        .plain "Entry" "" [
          .plain "UUID" Sample.uuidC [],
          Sample.protectedString "a" "AQID",
          Sample.protectedString "b" "",
          Sample.stringWith "c" [("ProtectInMemory", "True")] "AQID",
          Sample.protectedString "d" "=",
          .plain "History" "" [
            .plain "Entry" "" [.plain "UUID" Sample.uuidC [], Sample.protectedString "a" "CQ=="]],
          Sample.protectedBinary "e" "BAU=",
          Sample.protectedBinary "f" "=",
          .plain "Binary" "" [.plain "Key" "g" [],
            .mk "Value" [("Ref", "0"), ("Protected", "True")] "BAU=" []]],
        .plain "Group" "" [
          .plain "UUID" Sample.uuidB [],
          .plain "Entry" "" [.plain "UUID" Sample.uuidD [], Sample.protectedString "a" "Bw=="]]]]]

/-- A document whose entry has a history entry with an empty `History` element
of its own and, behind it, a protected string with the bytes 1, 2, 3. -/
def Sample.docProtectedBehindHistory : XmlElement :=
  .plain "KeePassFile" "" [
    .plain "Root" "" [
      .plain "Group" "" [
        .plain "UUID" Sample.uuidA [],
        .plain "Entry" "" [
          .plain "UUID" Sample.uuidC [],
          .plain "History" "" [
            .plain "Entry" "" [
              .plain "UUID" Sample.uuidC [],
              .plain "History" "" [],
              Sample.protectedString "a" "AQID"]]]]]]

/-! ## Part I. Definitions: a document with one more element of an unrecognized
name, for the claim on skipped elements -/

/-- The names of the elements that the reader reads with a loop over their
child elements. -/
def containerNames : List String :=
  ["KeePassFile", "Meta", "MemoryProtection", "CustomIcons", "Icon", "Binaries", "CustomData",
    "Item", "Root", "DeletedObjects", "DeletedObject", "Group", "Entry", "Times", "String",
    "Binary", "AutoType", "Association", "History"]

/-- The names of child elements that the loop reading an element named `n`
tests for. -/
def recognizedBy (n : String) : List String :=
  if n = "KeePassFile" then ["Meta", "Root"]
  else if n = "Root" then ["Group", "DeletedObjects"]
  else if n = "Group" then
    ["UUID", "Name", "Notes", "IconID", "CustomIconUUID", "Times", "IsExpanded",
      "DefaultAutoTypeSequence", "EnableAutoType", "EnableSearching", "LastTopVisibleEntry",
      "Group", "Entry"]
  else if n = "Entry" then
    ["UUID", "IconID", "CustomIconUUID", "ForegroundColor", "BackgroundColor", "OverrideURL",
      "Tags", "Times", "String", "Binary", "AutoType", "History"]
  else if n = "History" then ["Entry"]
  else if n = "Meta" then
    ["Generator", "HeaderHash", "DatabaseName", "DatabaseNameChanged", "DatabaseDescription",
      "DatabaseDescriptionChanged", "DefaultUserName", "DefaultUserNameChanged",
      "MaintenanceHistoryDays", "Color", "MasterKeyChanged", "MasterKeyChangeRec",
      "MasterKeyChangeForce", "MemoryProtection", "CustomIcons", "RecycleBinEnabled",
      "RecycleBinUUID", "RecycleBinChanged", "EntryTemplatesGroup",
      "EntryTemplatesGroupChanged", "LastSelectedGroup", "LastTopVisibleGroup",
      "HistoryMaxItems", "HistoryMaxSize", "Binaries", "CustomData", "SettingsChanged"]
  else if n = "MemoryProtection" then
    ["ProtectTitle", "ProtectUserName", "ProtectPassword", "ProtectURL", "ProtectNotes"]
  else if n = "CustomIcons" then ["Icon"]
  else if n = "Icon" then ["UUID", "Data"]
  else if n = "Binaries" then ["Binary"]
  else if n = "CustomData" then ["Item"]
  else if n = "Item" then ["Key", "Value"]
  else if n = "DeletedObjects" then ["DeletedObject"]
  else if n = "DeletedObject" then ["UUID", "DeletionTime"]
  else if n = "Times" then
    ["LastModificationTime", "CreationTime", "LastAccessTime", "ExpiryTime", "Expires",
      "UsageCount", "LocationChanged"]
  else if n = "String" then ["Key", "Value"]
  else if n = "Binary" then ["Key", "Value"]
  else if n = "AutoType" then
    ["Enabled", "DataTransferObfuscation", "DefaultSequence", "Association"]
  else if n = "Association" then ["Window", "KeystrokeSequence"]
  else []

/-- The names that the loops of `parseKeePassFile`, `parseRoot`, `parseGroup`,
`parseEntry` and `parseEntryHistory` test for, taken together. These loops read
from the cursor of the XML reader, and after a `History` element in a history
entry, a second `Group` element in `Root` or a second `Root` element, which are
not read through their end, each of them can come to read the child elements of
another. -/
def streamNames : List String :=
  ["Meta", "Root", "Group", "DeletedObjects", "Entry", "History",
    "UUID", "Name", "Notes", "IconID", "CustomIconUUID", "Times", "IsExpanded",
    "DefaultAutoTypeSequence", "EnableAutoType", "EnableSearching", "LastTopVisibleEntry",
    "ForegroundColor", "BackgroundColor", "OverrideURL", "Tags", "String", "Binary", "AutoType"]

/-- The names of child elements that a loop of the reader can come to test for
in an element named `n`, in any document: for the five elements read from the
cursor, the names of `streamNames`; for the others the names of their own
loop. -/
def recognizedIn (n : String) : List String :=
  if n = "KeePassFile" ∨ n = "Root" ∨ n = "Group" ∨ n = "Entry" ∨ n = "History" then streamNames
  else recognizedBy n

/-- The element `y` is the element `x`, or `x` with the element `u` added once:
as a child, at any place among the children, of `x` or of an element below `x`
that has the name `n` of a container, where the name of `u` is none of the names
`T n`. The flag `b` says that `x` is a child of an element named `Binaries`:
there an element named `Binary` is an item of the binary pool, read as text, and
no container. -/
inductive Inserted (T : String → List String) (u : XmlElement) :
    Bool → XmlElement → XmlElement → Prop
  | refl (b : Bool) (x : XmlElement) : Inserted T u b x x
  | here (b : Bool) (n : String) (a : List (String × String)) (t : String)
      (pre post : List XmlElement) :
      n ∈ containerNames → u.name ∉ T n → (b = true → n ≠ "Binary") →
      Inserted T u b (.mk n a t (pre ++ post)) (.mk n a t (pre ++ u :: post))
  | inside (b : Bool) (n : String) (a : List (String × String)) (t : String)
      (pre : List XmlElement) (c d : XmlElement) (post : List XmlElement) :
      Inserted T u (decide (n = "Binaries")) c d →
      Inserted T u b (.mk n a t (pre ++ c :: post)) (.mk n a t (pre ++ d :: post))

/-- The list `ds` is the list `cs` of the child elements of an element whose
loop recognizes the names `L`, or `cs` with `u` added in it or in one of its
elements. -/
inductive InsertedList (T : String → List String) (u : XmlElement) (b : Bool)
    (L : List String) :
    List XmlElement → List XmlElement → Prop
  | refl (cs : List XmlElement) : InsertedList T u b L cs cs
  | here (pre post : List XmlElement) : u.name ∉ L →
      InsertedList T u b L (pre ++ post) (pre ++ u :: post)
  | inside (pre : List XmlElement) (c d : XmlElement) (post : List XmlElement) :
      Inserted T u b c d → InsertedList T u b L (pre ++ c :: post) (pre ++ d :: post)

/-- The cursor `q` is the cursor `p`, or `p` with `u` added at one of its
levels or in one of the elements of that level. -/
inductive InsertedStack (u : XmlElement) :
    List (List XmlElement) → List (List XmlElement) → Prop
  | refl (p : List (List XmlElement)) : InsertedStack u p p
  | top (l m : List XmlElement) (up : List (List XmlElement)) :
      InsertedList recognizedIn u false streamNames l m → InsertedStack u (l :: up) (m :: up)
  | deeper (l : List XmlElement) (up vp : List (List XmlElement)) :
      InsertedStack u up vp → InsertedStack u (l :: up) (l :: vp)

/-- The state `t` is the state `s` but for the cursor, which is that of `s` or
that of `s` with `u` added. -/
def Reader.SameBut (u : XmlElement) (s t : Reader) : Prop :=
  ∃ q, InsertedStack u s.pending q ∧ t = s.setPending q

/-! ## Part I. Definitions: sample documents for the claim on skipped elements -/

/-- An element named `name` with an attribute, a text and child elements that
would give a group, an entry and hard errors if they were read. -/
def Sample.stranger (name : String) : XmlElement :=
  .mk name [("Protected", "True"), ("Ref", "0")] "text" [
    .plain "Group" "" [.plain "UUID" "bad" [], .plain "IconID" "-1" []],
    .plain "Entry" "" [.plain "UUID" "bad" [], .plain "History" "" [.plain "Entry" "" []]],
    .plain "UUID" "bad" [],
    .plain "Key" "Title" [],
    .plain "Value" "stray" [],
    .plain "Meta" "" [.plain "HistoryMaxItems" "bogus" []]]

/-- The elements added at the place numbered `k` of `Sample.docContainers`: the
element `u` when `k` is `i`, none otherwise. -/
def Sample.addedAt (k : Nat) (u : XmlElement) (i : Nat) : List XmlElement :=
  if k = i then [u] else []

/-- A document that decodes without error in both modes and has an element of
each kind that is read with a loop over its children, with the element `u` added
as a child of the one numbered `k`: 1 `KeePassFile`, 2 `Meta`,
3 `MemoryProtection`, 4 `CustomIcons`, 5 `Binaries`, 6 `CustomData`, 7 `Root`,
8 `DeletedObjects`, 9 `Group`, 10 `Entry`, 11 `Times`, 12 `String`, 13 `Binary`,
14 `AutoType`, 15 `Association`, 16 `History`, 17 `Icon`, 18 `Item`,
19 `DeletedObject`; with any other `k` nothing is added. -/
def Sample.docContainers (k : Nat) (u : XmlElement) : XmlElement :=
  .plain "KeePassFile" "" ([
    .plain "Meta" "" ([
      .plain "Generator" "sample" [],
      .plain "MemoryProtection" "" (Sample.addedAt k u 3 ++ [.plain "ProtectTitle" "True" []]),
      .plain "CustomIcons" "" ([
        .plain "Icon" "" ([.plain "UUID" Sample.uuidC []] ++ Sample.addedAt k u 17 ++
          [.plain "Data" "AQID" []])] ++ Sample.addedAt k u 4),
      .plain "Binaries" "" (Sample.addedAt k u 5 ++ [.mk "Binary" [("ID", "0")] "BAUG" []]),
      .plain "CustomData" "" ([
        .plain "Item" "" ([.plain "Key" "k" []] ++ Sample.addedAt k u 18 ++
          [.plain "Value" "v" []])] ++ Sample.addedAt k u 6)] ++ Sample.addedAt k u 2),
    .plain "Root" "" (Sample.addedAt k u 7 ++ [
      .plain "Group" "" ([
        .plain "UUID" Sample.uuidA [],
        .plain "Name" "root" [],
        .plain "Times" "" ([.plain "Expires" "False" []] ++ Sample.addedAt k u 11 ++
          [.plain "UsageCount" "3" []])] ++ Sample.addedAt k u 9 ++ [
        .plain "Entry" "" ([
          .plain "UUID" Sample.uuidB [],
          .plain "String" "" ([.plain "Key" "Title" []] ++ Sample.addedAt k u 12 ++
            [.plain "Value" "new" []]),
          .plain "Binary" "" ([.plain "Key" "file" []] ++ Sample.addedAt k u 13 ++
            [.mk "Value" [("Ref", "0")] "" []]),
          .plain "AutoType" "" ([
            .plain "Enabled" "True" [],
            .plain "Association" "" ([.plain "Window" "w" []] ++ Sample.addedAt k u 15 ++
              [.plain "KeystrokeSequence" "s" []])] ++ Sample.addedAt k u 14)] ++
          Sample.addedAt k u 10 ++ [
          .plain "History" "" (Sample.addedAt k u 16 ++ [
            .plain "Entry" "" [
              .plain "UUID" Sample.uuidB [],
              .plain "String" "" [.plain "Key" "Title" [], .plain "Value" "old" []]]])])]),
      .plain "DeletedObjects" "" ([
        .plain "DeletedObject" "" ([.plain "UUID" Sample.uuidC []] ++ Sample.addedAt k u 19 ++
          [.plain "DeletionTime" "AAAAAAAAAAA=" []])] ++ Sample.addedAt k u 8)])] ++
    Sample.addedAt k u 1)

/-- Two final states agree in what a decode delivers: the two error flags and
the message, the root group, the groups and the entries of the heap, the two
registries, the deleted objects, the metadata and the binary pool. -/
def Reader.sameDecode (a b : Reader) : Bool :=
  decide (a.m_error = b.m_error) && decide (a.xmlError = b.xmlError) &&
    decide (a.m_errorStr = b.m_errorStr) && decide (a.rootGroup = b.rootGroup) &&
    decide (a.groups = b.groups) && decide (a.entries = b.entries) &&
    decide (a.m_groups = b.m_groups) && decide (a.m_entries = b.m_entries) &&
    decide (a.deletedObjects = b.deletedObjects) && decide (a.m_meta = b.m_meta) &&
    decide (a.m_binaryPool = b.m_binaryPool)

/-- Two decodes returned, none with a dereference of a null `m_randomStream` on
its way, with final states that agree in what a decode delivers. -/
def sameResult : Option Reader → Option Reader → Bool
  | some a, some b => !a.nullDeref && !b.nullDeref && a.sameDecode b
  | _, _ => false

/-- The element `x` with the element `u` added at the end of the path `p`: each
number of the path but the last picks a child element, the last is the place
among the children of the element reached where `u` comes to stand. A path that
leaves the element changes nothing. -/
def XmlElement.insertAt (u : XmlElement) : List Nat → XmlElement → XmlElement
  | [], x => x
  | [i], x => .mk x.name x.attributes x.text (x.children.take i ++ u :: x.children.drop i)
  | i :: j :: rest, x =>
    match x.children.drop i with
    | [] => x
    | c :: post =>
      .mk x.name x.attributes x.text
        (x.children.take i ++ XmlElement.insertAt u (j :: rest) c :: post)

/-- The path `p` ends in an element of `x` that has the name `n` of a container
for which the name of `u` is none of the names `T n`, and that is no item of
the binary pool; `b` says that `x` is a child of an element named `Binaries`. -/
def XmlElement.admits (T : String → List String) (u : XmlElement) :
    Bool → List Nat → XmlElement → Bool
  | _, [], _ => true
  | b, [_], x =>
    decide (x.name ∈ containerNames) && decide (u.name ∉ T x.name) &&
      !(b && decide (x.name = "Binary"))
  | _, i :: j :: rest, x =>
    match x.children.drop i with
    | [] => true
    | c :: _ => XmlElement.admits T u (decide (x.name = "Binaries")) (j :: rest) c

/-- The document `Sample.docNestedHistory`, whose decode fails on the `History`
element of a history entry, with the elements `extra` added to that `History`
element. -/
def Sample.docNestedHistoryWith (extra : List XmlElement) : XmlElement :=
  .plain "KeePassFile" "" [
    .plain "Root" "" [
      .plain "Group" "" [
        .plain "UUID" Sample.uuidA [],
        .plain "Entry" "" [
          .plain "UUID" Sample.uuidC [],
          .plain "History" "" [
            .plain "Entry" "" [
              .plain "UUID" Sample.uuidC [],
              .plain "History" "" (extra ++
                [.plain "Entry" "" [.plain "UUID" Sample.uuidC []]])]]]]]]

/-! ## Part I. Definitions: the references that a state holds -/

/-- The references of the metadata to groups: the recycle bin, the group of
the entry templates, the last selected group and the last top visible group. -/
def Metadata.refList (m : Metadata) : List (Option Nat) :=
  [m.recycleBin, m.entryTemplatesGroup, m.lastSelectedGroup, m.lastTopVisibleGroup]

/-- A property of the reader state kept by every elementary state change made
while one child element is read through its end, where a reference is set only
to the object that its lookup returns: the state changes of `StableLeaf`, with
a change of a group that keeps its tree links and its last top visible entry
and a change of the metadata that keeps its references, and for each of the
five references the lookup of the UUID together with the assignment of the
object found. -/
structure RefLeaf (P : Reader → Prop) : Prop where
  raiseError : ∀ (st : Reader) (m : String), P st → P (st.raiseError m)
  updGroup : ∀ (st : Reader) (p : Nat) (f : DbGroup → DbGroup),
    (∀ g, (f g).links = g.links) →
    (∀ g, (f g).m_lastTopVisibleEntry = g.m_lastTopVisibleEntry) → P st → P (st.updGroup p f)
  updEntry : ∀ (st : Reader) (p : Nat) (f : Entry → Entry),
    (∀ e, (f e).m_group = e.m_group) → P st → P (st.updEntry p f)
  setMeta : ∀ (st : Reader) (f : Metadata → Metadata),
    (∀ m, (f m).refList = m.refList) → P st → P (st.setMeta f)
  setLastTopVisibleEntry : ∀ (st : Reader) (u : Uuid) (p : Nat), P st →
    P ((getEntry u st).2.updGroup p
      (fun g => { g with m_lastTopVisibleEntry := (getEntry u st).1 }))
  setRecycleBin : ∀ (st : Reader) (u : Uuid), P st →
    P ((getGroup u st).2.setMeta (fun m => { m with recycleBin := (getGroup u st).1 }))
  setEntryTemplatesGroup : ∀ (st : Reader) (u : Uuid), P st →
    P ((getGroup u st).2.setMeta
      (fun m => { m with entryTemplatesGroup := (getGroup u st).1 }))
  setLastSelectedGroup : ∀ (st : Reader) (u : Uuid), P st →
    P ((getGroup u st).2.setMeta (fun m => { m with lastSelectedGroup := (getGroup u st).1 }))
  setLastTopVisibleGroup : ∀ (st : Reader) (u : Uuid), P st →
    P ((getGroup u st).2.setMeta
      (fun m => { m with lastTopVisibleGroup := (getGroup u st).1 }))
  getGroup : ∀ (st : Reader) (u : Uuid), P st → P (getGroup u st).2
  getEntry : ∀ (st : Reader) (u : Uuid), P st → P (getEntry u st).2
  randomUuid : ∀ (env : Env) (st : Reader), P st → P (st.randomUuid env).2
  cipherProcess : ∀ (env : Env) (st : Reader) (cs c : QByteArray),
    P st → P (st.cipherProcess env cs c).2
  setNullDeref : ∀ (st : Reader), P st → P st.setNullDeref
  setXmlError : ∀ (st : Reader), P st → P st.setXmlError
  setHeaderHash : ∀ (st : Reader) (v : QByteArray), P st → P (st.setHeaderHash v)
  setBinaryPool : ∀ (st : Reader) (v : List (String × QByteArray)),
    P st → P (st.setBinaryPool v)
  addDeletedObject : ∀ (st : Reader) (d : DeletedObject), P st → P (st.addDeletedObject d)

/-- A property of the reader state kept by every elementary state change of a
decode, where a reference is set only to the object that its lookup returns:
those of `RefLeaf`, those that `Stable` adds to `StableLeaf`, and the copy of
the data of a group, its last top visible entry included, to another group. -/
structure RefStable (P : Reader → Prop) extends RefLeaf P : Prop where
  setPending : ∀ (st : Reader) (q : List (List XmlElement)), P st → P (st.setPending q)
  newGroup : ∀ (st : Reader), P st → P st.newGroup.2
  newEntry : ∀ (st : Reader), P st → P st.newEntry.2
  defGroup : ∀ (st : Reader) (u : Uuid) (p : Nat), mapGet u st.m_groups = some p →
    P st → P (st.defGroup u p)
  defEntry : ∀ (st : Reader) (u : Uuid) (p : Nat), mapGet u st.m_entries = some p →
    P st → P (st.defEntry u p)
  setParent : ∀ (st : Reader) (c p : Nat), P st → P (st.setParent c p)
  setGroup : ∀ (st : Reader) (e p : Nat), P st → P (st.setGroup e p)
  setRootGroup : ∀ (st : Reader) (p : Nat), P st → P (st.setRootGroup p)
  addBinaryRefs : ∀ (st : Reader) (v : List (String × Nat × String)),
    P st → P (st.addBinaryRefs v)
  copyGroup : ∀ (st : Reader) (p t : Nat), P st →
    P (st.updGroup p (fun g => g.copyDataFrom (st.group t)))

/-- Every reference that the state holds is an object that a recorded lookup
has returned: the last top visible entry of every group is the object of a
recorded `getEntry` call, and each reference of the metadata is the object of a
recorded `getGroup` call. -/
def Reader.RefsLogged (st : Reader) : Prop :=
  (∀ g e, (st.group g).m_lastTopVisibleEntry = some e → ∃ u, (u, e) ∈ st.entryLog) ∧
  (∀ p, some p ∈ st.m_meta.refList → ∃ u, (u, p) ∈ st.groupLog)

/-- The state `t` holds the references of the state `st`, the last top visible
entry of every group and the references of the metadata, and at least its
records of lookups. -/
def Reader.KeepsRefs (st t : Reader) : Prop :=
  (∀ g, (t.group g).m_lastTopVisibleEntry = (st.group g).m_lastTopVisibleEntry) ∧
  t.m_meta.refList = st.m_meta.refList ∧
  (∀ x ∈ st.entryLog, x ∈ t.entryLog) ∧ (∀ x ∈ st.groupLog, x ∈ t.groupLog)
/-! ## Part II. Theorems: `CompositeKey` -/

theorem CompositeKey.feedKeys_fed (ks : List Key) (h : CryptoHash) :
    (CompositeKey.feedKeys ks h).fed = h.fed ++ (ks.map Key.rawKey).flatten := by
  induction ks generalizing h with
  | nil => simp [CompositeKey.feedKeys]
  | cons k rest ih => simp [CompositeKey.feedKeys, ih, CryptoHash.addData]

theorem CompositeKey.foldl_addKey_keys (ks : List Key) (c : CompositeKey) :
    (ks.foldl CompositeKey.addKey c).m_keys = c.m_keys ++ ks := by
  induction ks generalizing c with
  | nil => simp
  | cons k rest ih => simp [ih, CompositeKey.addKey, Key.clone]

theorem CompositeKey.foldl_addKey_sources (ks : List Key) (c : CompositeKey) :
    (ks.foldl CompositeKey.addKey c).m_challengeResponseKeys = c.m_challengeResponseKeys := by
  induction ks generalizing c with
  | nil => simp
  | cons k rest ih => simp [ih, CompositeKey.addKey]

theorem CompositeKey.challengeLoop_all (sha256 : QByteArray → QByteArray)
    (seed prior : QByteArray) (srcs : List ChallengeResponseKey) (i : Nat) (h : CryptoHash)
    (calls : List (Nat × QByteArray))
    (hall : ∀ k ∈ srcs, (k.respond seed).isSome = true) :
    CompositeKey.challengeLoop sha256 seed prior srcs i h calls =
      ⟨true, sha256 (h.fed ++ (srcs.map (fun k => (k.respond seed).getD [])).flatten),
        calls ++ (List.range' i srcs.length).map (fun j => (j, seed))⟩ := by
  induction srcs generalizing i h calls with
  | nil => simp [CompositeKey.challengeLoop, CryptoHash.result]
  | cons k rest ih =>
    have hk : (k.respond seed).isSome = true := hall k (by simp)
    obtain ⟨r, hr⟩ := Option.isSome_iff_exists.mp hk
    have hrest : ∀ k ∈ rest, (k.respond seed).isSome = true :=
      fun k hk => hall k (by simp [hk])
    simp [CompositeKey.challengeLoop, hr, ih _ _ _ hrest, CryptoHash.addData, List.range']

theorem CompositeKey.challengeLoop_fail (sha256 : QByteArray → QByteArray)
    (seed prior : QByteArray) (pre : List ChallengeResponseKey) (k : ChallengeResponseKey)
    (post : List ChallengeResponseKey) (i : Nat) (h : CryptoHash)
    (calls : List (Nat × QByteArray))
    (hpre : ∀ p ∈ pre, (p.respond seed).isSome = true) (hk : k.respond seed = none) :
    CompositeKey.challengeLoop sha256 seed prior (pre ++ k :: post) i h calls =
      ⟨false, prior, calls ++ (List.range' i (pre.length + 1)).map (fun j => (j, seed))⟩ := by
  induction pre generalizing i h calls with
  | nil => simp [CompositeKey.challengeLoop, hk, List.range']
  | cons p rest ih =>
    have hp : (p.respond seed).isSome = true := hpre p (by simp)
    obtain ⟨r, hr⟩ := Option.isSome_iff_exists.mp hp
    have hrest : ∀ q ∈ rest, (q.respond seed).isSome = true :=
      fun q hq => hpre q (by simp [hq])
    simp [CompositeKey.challengeLoop, hr, ih _ _ _ hrest, List.range']

/-- C1: with no challenge-response source registered, `rawKey(seed)` returns the
same bytes as `rawKey(nullptr)`, for every list of plain keys and every seed. -/
theorem C1_rawKey_seed_eq_rawKey_null (sha256 : QByteArray → QByteArray) (keys : List Key)
    (seed : QByteArray) :
    CompositeKey.rawKey sha256 ⟨keys, []⟩ (some seed) =
      CompositeKey.rawKey sha256 ⟨keys, []⟩ none := by
  simp [CompositeKey.rawKey, CompositeKey.challenge, CryptoHash.addData, CryptoHash.result]

/-- C2: on a composite key without challenge-response sources, `challenge(seed)`
returns true and leaves the result buffer empty, whatever the seed and the
prior content of the buffer; no source is called. -/
theorem C2_challenge_no_sources (sha256 : QByteArray → QByteArray) (keys : List Key)
    (seed prior : QByteArray) :
    CompositeKey.challenge sha256 ⟨keys, []⟩ seed prior = ⟨true, [], []⟩ := by
  simp [CompositeKey.challenge]

/-- C4: after `addKey` calls with keys of digests d1..dn, `rawKey(nullptr)` is
SHA-256(d1 ‖ … ‖ dn), and `rawKey(s)` is SHA-256(d1 ‖ … ‖ dn ‖ c) with c the
content of the result buffer after `challenge(s)`; with one plain key and no
challenge-response source `rawKey(s)` is SHA-256(d1). -/
theorem C4_rawKey_value (sha256 : QByteArray → QByteArray) (ks : List Key)
    (srcs : List ChallengeResponseKey) :
    CompositeKey.rawKey sha256 (ks.foldl CompositeKey.addKey ⟨[], srcs⟩) none =
        sha256 (ks.map Key.rawKey).flatten ∧
    (∀ s, CompositeKey.rawKey sha256 (ks.foldl CompositeKey.addKey ⟨[], srcs⟩) (some s) =
        sha256 ((ks.map Key.rawKey).flatten ++
          (CompositeKey.challenge sha256 (ks.foldl CompositeKey.addKey ⟨[], srcs⟩) s []).result)) ∧
    (∀ (k : Key) (s : QByteArray),
      CompositeKey.rawKey sha256 (CompositeKey.addKey CompositeKey.empty k) (some s) =
        sha256 k.rawKey) := by
  refine ⟨?_, ?_, ?_⟩
  · simp [CompositeKey.rawKey, CompositeKey.foldl_addKey_keys, CompositeKey.feedKeys_fed,
      CryptoHash.result, CryptoHash.init]
  · intro s
    simp [CompositeKey.rawKey, CompositeKey.foldl_addKey_keys, CompositeKey.feedKeys_fed,
      CryptoHash.result, CryptoHash.init, CryptoHash.addData]
  · intro k s
    simp [CompositeKey.rawKey, CompositeKey.addKey, CompositeKey.empty, CompositeKey.feedKeys,
      CompositeKey.challenge, CryptoHash.result, CryptoHash.init, CryptoHash.addData, Key.clone]

/-- C5: the code at the failing input. One plain key of digest [1], one
challenge-response source that fails on every seed, and a Kdf that succeeds:
`challenge` returns false, yet `transform` returns true, and the transformed key
is the Kdf of SHA-256 over the plain digest alone. -/
theorem C5_transform_true_after_failed_challenge (sha256 : QByteArray → QByteArray) :
    (CompositeKey.challenge sha256 ⟨[⟨[1]⟩], [⟨fun _ => none⟩]⟩ [0] []).ok = false ∧
    CompositeKey.transform sha256 ⟨[⟨[1]⟩], [⟨fun _ => none⟩]⟩ ⟨fun raw _ => (true, raw)⟩ []
        (some [0]) = (true, sha256 [1]) := by
  simp [CompositeKey.transform, CompositeKey.rawKey, CompositeKey.challenge,
    CompositeKey.challengeLoop, CompositeKey.feedKeys, CryptoHash.result, CryptoHash.init,
    CryptoHash.addData]

/-- C6: `transform(kdf, seed)` is the Kdf applied to `rawKey(seed)` and to the
caller's result buffer: it returns true exactly when the Kdf does on that input,
and the result buffer holds what the Kdf wrote. -/
theorem C6_transform_applies_kdf (sha256 : QByteArray → QByteArray) (c : CompositeKey)
    (kdf : Kdf) (prior : QByteArray) (seed : Option QByteArray) :
    CompositeKey.transform sha256 c kdf prior seed =
        kdf.transform (CompositeKey.rawKey sha256 c seed) prior ∧
    ((CompositeKey.transform sha256 c kdf prior seed).1 = true ↔
        (kdf.transform (CompositeKey.rawKey sha256 c seed) prior).1 = true) ∧
    (CompositeKey.transform sha256 c kdf prior seed).2 =
        (kdf.transform (CompositeKey.rawKey sha256 c seed) prior).2 := by
  simp [CompositeKey.transform]

/-! ## Part II. Theorems: the reader -/

set_option linter.unusedTactic false
set_option linter.unreachableTactic false
set_option linter.unusedVariables false

/-! ### Fields left alone by the heap operations and the registry lookups -/

@[simp] theorem Reader.updGroup_pending (st : Reader) (p : Nat) (f : DbGroup → DbGroup) :
    (st.updGroup p f).pending = st.pending := by
  unfold Reader.updGroup; split <;> rfl

@[simp] theorem Reader.updGroup_xmlError (st : Reader) (p : Nat) (f : DbGroup → DbGroup) :
    (st.updGroup p f).xmlError = st.xmlError := by
  unfold Reader.updGroup; split <;> rfl

@[simp] theorem Reader.updGroup_m_error (st : Reader) (p : Nat) (f : DbGroup → DbGroup) :
    (st.updGroup p f).m_error = st.m_error := by
  unfold Reader.updGroup; split <;> rfl

@[simp] theorem Reader.updGroup_m_strictMode (st : Reader) (p : Nat) (f : DbGroup → DbGroup) :
    (st.updGroup p f).m_strictMode = st.m_strictMode := by
  unfold Reader.updGroup; split <;> rfl

@[simp] theorem Reader.updGroup_m_binaryPool (st : Reader) (p : Nat) (f : DbGroup → DbGroup) :
    (st.updGroup p f).m_binaryPool = st.m_binaryPool := by
  unfold Reader.updGroup; split <;> rfl

@[simp] theorem Reader.updGroup_m_binaryMap (st : Reader) (p : Nat) (f : DbGroup → DbGroup) :
    (st.updGroup p f).m_binaryMap = st.m_binaryMap := by
  unfold Reader.updGroup; split <;> rfl

@[simp] theorem Reader.updGroup_m_groups (st : Reader) (p : Nat) (f : DbGroup → DbGroup) :
    (st.updGroup p f).m_groups = st.m_groups := by
  unfold Reader.updGroup; split <;> rfl

@[simp] theorem Reader.updGroup_m_entries (st : Reader) (p : Nat) (f : DbGroup → DbGroup) :
    (st.updGroup p f).m_entries = st.m_entries := by
  unfold Reader.updGroup; split <;> rfl

@[simp] theorem Reader.updGroup_m_tmpParent (st : Reader) (p : Nat) (f : DbGroup → DbGroup) :
    (st.updGroup p f).m_tmpParent = st.m_tmpParent := by
  unfold Reader.updGroup; split <;> rfl

@[simp] theorem Reader.updGroup_m_randomStream (st : Reader) (p : Nat) (f : DbGroup → DbGroup) :
    (st.updGroup p f).m_randomStream = st.m_randomStream := by
  unfold Reader.updGroup; split <;> rfl

@[simp] theorem Reader.updGroup_cipherLog (st : Reader) (p : Nat) (f : DbGroup → DbGroup) :
    (st.updGroup p f).cipherLog = st.cipherLog := by
  unfold Reader.updGroup; split <;> rfl

@[simp] theorem Reader.updGroup_groupLog (st : Reader) (p : Nat) (f : DbGroup → DbGroup) :
    (st.updGroup p f).groupLog = st.groupLog := by
  unfold Reader.updGroup; split <;> rfl

@[simp] theorem Reader.updGroup_entryLog (st : Reader) (p : Nat) (f : DbGroup → DbGroup) :
    (st.updGroup p f).entryLog = st.entryLog := by
  unfold Reader.updGroup; split <;> rfl

@[simp] theorem Reader.updGroup_groupDefs (st : Reader) (p : Nat) (f : DbGroup → DbGroup) :
    (st.updGroup p f).groupDefs = st.groupDefs := by
  unfold Reader.updGroup; split <;> rfl

@[simp] theorem Reader.updGroup_entryDefs (st : Reader) (p : Nat) (f : DbGroup → DbGroup) :
    (st.updGroup p f).entryDefs = st.entryDefs := by
  unfold Reader.updGroup; split <;> rfl

@[simp] theorem Reader.updGroup_entries (st : Reader) (p : Nat) (f : DbGroup → DbGroup) :
    (st.updGroup p f).entries = st.entries := by
  unfold Reader.updGroup; split <;> rfl

@[simp] theorem Reader.updGroup_rootGroup (st : Reader) (p : Nat) (f : DbGroup → DbGroup) :
    (st.updGroup p f).rootGroup = st.rootGroup := by
  unfold Reader.updGroup; split <;> rfl

@[simp] theorem Reader.updEntry_pending (st : Reader) (p : Nat) (f : Entry → Entry) :
    (st.updEntry p f).pending = st.pending := by
  unfold Reader.updEntry; split <;> rfl

@[simp] theorem Reader.updEntry_xmlError (st : Reader) (p : Nat) (f : Entry → Entry) :
    (st.updEntry p f).xmlError = st.xmlError := by
  unfold Reader.updEntry; split <;> rfl

@[simp] theorem Reader.updEntry_m_error (st : Reader) (p : Nat) (f : Entry → Entry) :
    (st.updEntry p f).m_error = st.m_error := by
  unfold Reader.updEntry; split <;> rfl

@[simp] theorem Reader.updEntry_m_strictMode (st : Reader) (p : Nat) (f : Entry → Entry) :
    (st.updEntry p f).m_strictMode = st.m_strictMode := by
  unfold Reader.updEntry; split <;> rfl

@[simp] theorem Reader.updEntry_m_binaryPool (st : Reader) (p : Nat) (f : Entry → Entry) :
    (st.updEntry p f).m_binaryPool = st.m_binaryPool := by
  unfold Reader.updEntry; split <;> rfl

@[simp] theorem Reader.updEntry_m_binaryMap (st : Reader) (p : Nat) (f : Entry → Entry) :
    (st.updEntry p f).m_binaryMap = st.m_binaryMap := by
  unfold Reader.updEntry; split <;> rfl

@[simp] theorem Reader.updEntry_m_groups (st : Reader) (p : Nat) (f : Entry → Entry) :
    (st.updEntry p f).m_groups = st.m_groups := by
  unfold Reader.updEntry; split <;> rfl

@[simp] theorem Reader.updEntry_m_entries (st : Reader) (p : Nat) (f : Entry → Entry) :
    (st.updEntry p f).m_entries = st.m_entries := by
  unfold Reader.updEntry; split <;> rfl

@[simp] theorem Reader.updEntry_m_tmpParent (st : Reader) (p : Nat) (f : Entry → Entry) :
    (st.updEntry p f).m_tmpParent = st.m_tmpParent := by
  unfold Reader.updEntry; split <;> rfl

@[simp] theorem Reader.updEntry_m_randomStream (st : Reader) (p : Nat) (f : Entry → Entry) :
    (st.updEntry p f).m_randomStream = st.m_randomStream := by
  unfold Reader.updEntry; split <;> rfl

@[simp] theorem Reader.updEntry_cipherLog (st : Reader) (p : Nat) (f : Entry → Entry) :
    (st.updEntry p f).cipherLog = st.cipherLog := by
  unfold Reader.updEntry; split <;> rfl

@[simp] theorem Reader.updEntry_groupLog (st : Reader) (p : Nat) (f : Entry → Entry) :
    (st.updEntry p f).groupLog = st.groupLog := by
  unfold Reader.updEntry; split <;> rfl

@[simp] theorem Reader.updEntry_entryLog (st : Reader) (p : Nat) (f : Entry → Entry) :
    (st.updEntry p f).entryLog = st.entryLog := by
  unfold Reader.updEntry; split <;> rfl

@[simp] theorem Reader.updEntry_groupDefs (st : Reader) (p : Nat) (f : Entry → Entry) :
    (st.updEntry p f).groupDefs = st.groupDefs := by
  unfold Reader.updEntry; split <;> rfl

@[simp] theorem Reader.updEntry_entryDefs (st : Reader) (p : Nat) (f : Entry → Entry) :
    (st.updEntry p f).entryDefs = st.entryDefs := by
  unfold Reader.updEntry; split <;> rfl

@[simp] theorem Reader.updEntry_groups (st : Reader) (p : Nat) (f : Entry → Entry) :
    (st.updEntry p f).groups = st.groups := by
  unfold Reader.updEntry; split <;> rfl

@[simp] theorem Reader.updEntry_rootGroup (st : Reader) (p : Nat) (f : Entry → Entry) :
    (st.updEntry p f).rootGroup = st.rootGroup := by
  unfold Reader.updEntry; split <;> rfl

@[simp] theorem Reader.cleanupParent_pending (st : Reader) (c : Nat) :
    (st.cleanupParent c).pending = st.pending := by
  unfold Reader.cleanupParent; split <;> simp

@[simp] theorem Reader.cleanupParent_xmlError (st : Reader) (c : Nat) :
    (st.cleanupParent c).xmlError = st.xmlError := by
  unfold Reader.cleanupParent; split <;> simp

@[simp] theorem Reader.cleanupParent_m_error (st : Reader) (c : Nat) :
    (st.cleanupParent c).m_error = st.m_error := by
  unfold Reader.cleanupParent; split <;> simp

@[simp] theorem Reader.cleanupParent_m_strictMode (st : Reader) (c : Nat) :
    (st.cleanupParent c).m_strictMode = st.m_strictMode := by
  unfold Reader.cleanupParent; split <;> simp

@[simp] theorem Reader.cleanupParent_m_binaryPool (st : Reader) (c : Nat) :
    (st.cleanupParent c).m_binaryPool = st.m_binaryPool := by
  unfold Reader.cleanupParent; split <;> simp

@[simp] theorem Reader.cleanupParent_m_binaryMap (st : Reader) (c : Nat) :
    (st.cleanupParent c).m_binaryMap = st.m_binaryMap := by
  unfold Reader.cleanupParent; split <;> simp

@[simp] theorem Reader.cleanupParent_m_groups (st : Reader) (c : Nat) :
    (st.cleanupParent c).m_groups = st.m_groups := by
  unfold Reader.cleanupParent; split <;> simp

@[simp] theorem Reader.cleanupParent_m_entries (st : Reader) (c : Nat) :
    (st.cleanupParent c).m_entries = st.m_entries := by
  unfold Reader.cleanupParent; split <;> simp

@[simp] theorem Reader.cleanupParent_m_tmpParent (st : Reader) (c : Nat) :
    (st.cleanupParent c).m_tmpParent = st.m_tmpParent := by
  unfold Reader.cleanupParent; split <;> simp

@[simp] theorem Reader.cleanupParent_m_randomStream (st : Reader) (c : Nat) :
    (st.cleanupParent c).m_randomStream = st.m_randomStream := by
  unfold Reader.cleanupParent; split <;> simp

@[simp] theorem Reader.cleanupParent_cipherLog (st : Reader) (c : Nat) :
    (st.cleanupParent c).cipherLog = st.cipherLog := by
  unfold Reader.cleanupParent; split <;> simp

@[simp] theorem Reader.cleanupParent_groupLog (st : Reader) (c : Nat) :
    (st.cleanupParent c).groupLog = st.groupLog := by
  unfold Reader.cleanupParent; split <;> simp

@[simp] theorem Reader.cleanupParent_entryLog (st : Reader) (c : Nat) :
    (st.cleanupParent c).entryLog = st.entryLog := by
  unfold Reader.cleanupParent; split <;> simp

@[simp] theorem Reader.cleanupParent_groupDefs (st : Reader) (c : Nat) :
    (st.cleanupParent c).groupDefs = st.groupDefs := by
  unfold Reader.cleanupParent; split <;> simp

@[simp] theorem Reader.cleanupParent_entryDefs (st : Reader) (c : Nat) :
    (st.cleanupParent c).entryDefs = st.entryDefs := by
  unfold Reader.cleanupParent; split <;> simp

@[simp] theorem Reader.cleanupParent_entries (st : Reader) (c : Nat) :
    (st.cleanupParent c).entries = st.entries := by
  unfold Reader.cleanupParent; split <;> simp

@[simp] theorem Reader.cleanupParent_rootGroup (st : Reader) (c : Nat) :
    (st.cleanupParent c).rootGroup = st.rootGroup := by
  unfold Reader.cleanupParent; split <;> simp

@[simp] theorem Reader.setParent_pending (st : Reader) (c p : Nat) :
    (st.setParent c p).pending = st.pending := by
  simp [Reader.setParent]

@[simp] theorem Reader.setParent_xmlError (st : Reader) (c p : Nat) :
    (st.setParent c p).xmlError = st.xmlError := by
  simp [Reader.setParent]

@[simp] theorem Reader.setParent_m_error (st : Reader) (c p : Nat) :
    (st.setParent c p).m_error = st.m_error := by
  simp [Reader.setParent]

@[simp] theorem Reader.setParent_m_strictMode (st : Reader) (c p : Nat) :
    (st.setParent c p).m_strictMode = st.m_strictMode := by
  simp [Reader.setParent]

@[simp] theorem Reader.setParent_m_binaryPool (st : Reader) (c p : Nat) :
    (st.setParent c p).m_binaryPool = st.m_binaryPool := by
  simp [Reader.setParent]

@[simp] theorem Reader.setParent_m_binaryMap (st : Reader) (c p : Nat) :
    (st.setParent c p).m_binaryMap = st.m_binaryMap := by
  simp [Reader.setParent]

@[simp] theorem Reader.setParent_m_groups (st : Reader) (c p : Nat) :
    (st.setParent c p).m_groups = st.m_groups := by
  simp [Reader.setParent]

@[simp] theorem Reader.setParent_m_entries (st : Reader) (c p : Nat) :
    (st.setParent c p).m_entries = st.m_entries := by
  simp [Reader.setParent]

@[simp] theorem Reader.setParent_m_tmpParent (st : Reader) (c p : Nat) :
    (st.setParent c p).m_tmpParent = st.m_tmpParent := by
  simp [Reader.setParent]

@[simp] theorem Reader.setParent_m_randomStream (st : Reader) (c p : Nat) :
    (st.setParent c p).m_randomStream = st.m_randomStream := by
  simp [Reader.setParent]

@[simp] theorem Reader.setParent_cipherLog (st : Reader) (c p : Nat) :
    (st.setParent c p).cipherLog = st.cipherLog := by
  simp [Reader.setParent]

@[simp] theorem Reader.setParent_groupLog (st : Reader) (c p : Nat) :
    (st.setParent c p).groupLog = st.groupLog := by
  simp [Reader.setParent]

@[simp] theorem Reader.setParent_entryLog (st : Reader) (c p : Nat) :
    (st.setParent c p).entryLog = st.entryLog := by
  simp [Reader.setParent]

@[simp] theorem Reader.setParent_groupDefs (st : Reader) (c p : Nat) :
    (st.setParent c p).groupDefs = st.groupDefs := by
  simp [Reader.setParent]

@[simp] theorem Reader.setParent_entryDefs (st : Reader) (c p : Nat) :
    (st.setParent c p).entryDefs = st.entryDefs := by
  simp [Reader.setParent]

@[simp] theorem Reader.setParent_entries (st : Reader) (c p : Nat) :
    (st.setParent c p).entries = st.entries := by
  simp [Reader.setParent]

@[simp] theorem Reader.setParent_rootGroup (st : Reader) (c p : Nat) :
    (st.setParent c p).rootGroup = st.rootGroup := by
  simp [Reader.setParent]

@[simp] theorem Reader.setGroup_pending (st : Reader) (e p : Nat) :
    (st.setGroup e p).pending = st.pending := by
  unfold Reader.setGroup; split
  · rfl
  · split <;> simp

@[simp] theorem Reader.setGroup_xmlError (st : Reader) (e p : Nat) :
    (st.setGroup e p).xmlError = st.xmlError := by
  unfold Reader.setGroup; split
  · rfl
  · split <;> simp

@[simp] theorem Reader.setGroup_m_error (st : Reader) (e p : Nat) :
    (st.setGroup e p).m_error = st.m_error := by
  unfold Reader.setGroup; split
  · rfl
  · split <;> simp

@[simp] theorem Reader.setGroup_m_strictMode (st : Reader) (e p : Nat) :
    (st.setGroup e p).m_strictMode = st.m_strictMode := by
  unfold Reader.setGroup; split
  · rfl
  · split <;> simp

@[simp] theorem Reader.setGroup_m_binaryPool (st : Reader) (e p : Nat) :
    (st.setGroup e p).m_binaryPool = st.m_binaryPool := by
  unfold Reader.setGroup; split
  · rfl
  · split <;> simp

@[simp] theorem Reader.setGroup_m_binaryMap (st : Reader) (e p : Nat) :
    (st.setGroup e p).m_binaryMap = st.m_binaryMap := by
  unfold Reader.setGroup; split
  · rfl
  · split <;> simp

@[simp] theorem Reader.setGroup_m_groups (st : Reader) (e p : Nat) :
    (st.setGroup e p).m_groups = st.m_groups := by
  unfold Reader.setGroup; split
  · rfl
  · split <;> simp

@[simp] theorem Reader.setGroup_m_entries (st : Reader) (e p : Nat) :
    (st.setGroup e p).m_entries = st.m_entries := by
  unfold Reader.setGroup; split
  · rfl
  · split <;> simp

@[simp] theorem Reader.setGroup_m_tmpParent (st : Reader) (e p : Nat) :
    (st.setGroup e p).m_tmpParent = st.m_tmpParent := by
  unfold Reader.setGroup; split
  · rfl
  · split <;> simp

@[simp] theorem Reader.setGroup_m_randomStream (st : Reader) (e p : Nat) :
    (st.setGroup e p).m_randomStream = st.m_randomStream := by
  unfold Reader.setGroup; split
  · rfl
  · split <;> simp

@[simp] theorem Reader.setGroup_cipherLog (st : Reader) (e p : Nat) :
    (st.setGroup e p).cipherLog = st.cipherLog := by
  unfold Reader.setGroup; split
  · rfl
  · split <;> simp

@[simp] theorem Reader.setGroup_groupLog (st : Reader) (e p : Nat) :
    (st.setGroup e p).groupLog = st.groupLog := by
  unfold Reader.setGroup; split
  · rfl
  · split <;> simp

@[simp] theorem Reader.setGroup_entryLog (st : Reader) (e p : Nat) :
    (st.setGroup e p).entryLog = st.entryLog := by
  unfold Reader.setGroup; split
  · rfl
  · split <;> simp

@[simp] theorem Reader.setGroup_groupDefs (st : Reader) (e p : Nat) :
    (st.setGroup e p).groupDefs = st.groupDefs := by
  unfold Reader.setGroup; split
  · rfl
  · split <;> simp

@[simp] theorem Reader.setGroup_entryDefs (st : Reader) (e p : Nat) :
    (st.setGroup e p).entryDefs = st.entryDefs := by
  unfold Reader.setGroup; split
  · rfl
  · split <;> simp

@[simp] theorem Reader.setGroup_rootGroup (st : Reader) (e p : Nat) :
    (st.setGroup e p).rootGroup = st.rootGroup := by
  unfold Reader.setGroup; split
  · rfl
  · split <;> simp

@[simp] theorem Reader.deleteGroup_pending (st : Reader) (p : Nat) :
    (st.deleteGroup p).pending = st.pending := by
  simp [Reader.deleteGroup]

@[simp] theorem Reader.deleteGroup_xmlError (st : Reader) (p : Nat) :
    (st.deleteGroup p).xmlError = st.xmlError := by
  simp [Reader.deleteGroup]

@[simp] theorem Reader.deleteGroup_m_error (st : Reader) (p : Nat) :
    (st.deleteGroup p).m_error = st.m_error := by
  simp [Reader.deleteGroup]

@[simp] theorem Reader.deleteGroup_m_strictMode (st : Reader) (p : Nat) :
    (st.deleteGroup p).m_strictMode = st.m_strictMode := by
  simp [Reader.deleteGroup]

@[simp] theorem Reader.deleteGroup_m_binaryPool (st : Reader) (p : Nat) :
    (st.deleteGroup p).m_binaryPool = st.m_binaryPool := by
  simp [Reader.deleteGroup]

@[simp] theorem Reader.deleteGroup_m_binaryMap (st : Reader) (p : Nat) :
    (st.deleteGroup p).m_binaryMap = st.m_binaryMap := by
  simp [Reader.deleteGroup]

@[simp] theorem Reader.deleteGroup_m_groups (st : Reader) (p : Nat) :
    (st.deleteGroup p).m_groups = st.m_groups := by
  simp [Reader.deleteGroup]

@[simp] theorem Reader.deleteGroup_m_entries (st : Reader) (p : Nat) :
    (st.deleteGroup p).m_entries = st.m_entries := by
  simp [Reader.deleteGroup]

@[simp] theorem Reader.deleteGroup_m_tmpParent (st : Reader) (p : Nat) :
    (st.deleteGroup p).m_tmpParent = st.m_tmpParent := by
  simp [Reader.deleteGroup]

@[simp] theorem Reader.deleteGroup_m_randomStream (st : Reader) (p : Nat) :
    (st.deleteGroup p).m_randomStream = st.m_randomStream := by
  simp [Reader.deleteGroup]

@[simp] theorem Reader.deleteGroup_cipherLog (st : Reader) (p : Nat) :
    (st.deleteGroup p).cipherLog = st.cipherLog := by
  simp [Reader.deleteGroup]

@[simp] theorem Reader.deleteGroup_groupLog (st : Reader) (p : Nat) :
    (st.deleteGroup p).groupLog = st.groupLog := by
  simp [Reader.deleteGroup]

@[simp] theorem Reader.deleteGroup_entryLog (st : Reader) (p : Nat) :
    (st.deleteGroup p).entryLog = st.entryLog := by
  simp [Reader.deleteGroup]

@[simp] theorem Reader.deleteGroup_groupDefs (st : Reader) (p : Nat) :
    (st.deleteGroup p).groupDefs = st.groupDefs := by
  simp [Reader.deleteGroup]

@[simp] theorem Reader.deleteGroup_entryDefs (st : Reader) (p : Nat) :
    (st.deleteGroup p).entryDefs = st.entryDefs := by
  simp [Reader.deleteGroup]

@[simp] theorem Reader.deleteGroup_entries (st : Reader) (p : Nat) :
    (st.deleteGroup p).entries = st.entries := by
  simp [Reader.deleteGroup]

@[simp] theorem Reader.deleteGroup_rootGroup (st : Reader) (p : Nat) :
    (st.deleteGroup p).rootGroup = st.rootGroup := by
  simp [Reader.deleteGroup]

@[simp] theorem Reader.deleteEntry_pending (st : Reader) (p : Nat) :
    (st.deleteEntry p).pending = st.pending := by
  simp [Reader.deleteEntry]

@[simp] theorem Reader.deleteEntry_xmlError (st : Reader) (p : Nat) :
    (st.deleteEntry p).xmlError = st.xmlError := by
  simp [Reader.deleteEntry]

@[simp] theorem Reader.deleteEntry_m_error (st : Reader) (p : Nat) :
    (st.deleteEntry p).m_error = st.m_error := by
  simp [Reader.deleteEntry]

@[simp] theorem Reader.deleteEntry_m_strictMode (st : Reader) (p : Nat) :
    (st.deleteEntry p).m_strictMode = st.m_strictMode := by
  simp [Reader.deleteEntry]

@[simp] theorem Reader.deleteEntry_m_binaryPool (st : Reader) (p : Nat) :
    (st.deleteEntry p).m_binaryPool = st.m_binaryPool := by
  simp [Reader.deleteEntry]

@[simp] theorem Reader.deleteEntry_m_binaryMap (st : Reader) (p : Nat) :
    (st.deleteEntry p).m_binaryMap = st.m_binaryMap := by
  simp [Reader.deleteEntry]

@[simp] theorem Reader.deleteEntry_m_groups (st : Reader) (p : Nat) :
    (st.deleteEntry p).m_groups = st.m_groups := by
  simp [Reader.deleteEntry]

@[simp] theorem Reader.deleteEntry_m_entries (st : Reader) (p : Nat) :
    (st.deleteEntry p).m_entries = st.m_entries := by
  simp [Reader.deleteEntry]

@[simp] theorem Reader.deleteEntry_m_tmpParent (st : Reader) (p : Nat) :
    (st.deleteEntry p).m_tmpParent = st.m_tmpParent := by
  simp [Reader.deleteEntry]

@[simp] theorem Reader.deleteEntry_m_randomStream (st : Reader) (p : Nat) :
    (st.deleteEntry p).m_randomStream = st.m_randomStream := by
  simp [Reader.deleteEntry]

@[simp] theorem Reader.deleteEntry_cipherLog (st : Reader) (p : Nat) :
    (st.deleteEntry p).cipherLog = st.cipherLog := by
  simp [Reader.deleteEntry]

@[simp] theorem Reader.deleteEntry_groupLog (st : Reader) (p : Nat) :
    (st.deleteEntry p).groupLog = st.groupLog := by
  simp [Reader.deleteEntry]

@[simp] theorem Reader.deleteEntry_entryLog (st : Reader) (p : Nat) :
    (st.deleteEntry p).entryLog = st.entryLog := by
  simp [Reader.deleteEntry]

@[simp] theorem Reader.deleteEntry_groupDefs (st : Reader) (p : Nat) :
    (st.deleteEntry p).groupDefs = st.groupDefs := by
  simp [Reader.deleteEntry]

@[simp] theorem Reader.deleteEntry_entryDefs (st : Reader) (p : Nat) :
    (st.deleteEntry p).entryDefs = st.entryDefs := by
  simp [Reader.deleteEntry]

@[simp] theorem Reader.deleteEntry_groups (st : Reader) (p : Nat) :
    (st.deleteEntry p).groups = st.groups := by
  simp [Reader.deleteEntry]

@[simp] theorem Reader.deleteEntry_rootGroup (st : Reader) (p : Nat) :
    (st.deleteEntry p).rootGroup = st.rootGroup := by
  simp [Reader.deleteEntry]

@[simp] theorem Reader.setRootGroup_pending (st : Reader) (p : Nat) :
    (st.setRootGroup p).pending = st.pending := by
  simp [Reader.setRootGroup]

@[simp] theorem Reader.setRootGroup_xmlError (st : Reader) (p : Nat) :
    (st.setRootGroup p).xmlError = st.xmlError := by
  simp [Reader.setRootGroup]

@[simp] theorem Reader.setRootGroup_m_error (st : Reader) (p : Nat) :
    (st.setRootGroup p).m_error = st.m_error := by
  simp [Reader.setRootGroup]

@[simp] theorem Reader.setRootGroup_m_strictMode (st : Reader) (p : Nat) :
    (st.setRootGroup p).m_strictMode = st.m_strictMode := by
  simp [Reader.setRootGroup]

@[simp] theorem Reader.setRootGroup_m_binaryPool (st : Reader) (p : Nat) :
    (st.setRootGroup p).m_binaryPool = st.m_binaryPool := by
  simp [Reader.setRootGroup]

@[simp] theorem Reader.setRootGroup_m_binaryMap (st : Reader) (p : Nat) :
    (st.setRootGroup p).m_binaryMap = st.m_binaryMap := by
  simp [Reader.setRootGroup]

@[simp] theorem Reader.setRootGroup_m_groups (st : Reader) (p : Nat) :
    (st.setRootGroup p).m_groups = st.m_groups := by
  simp [Reader.setRootGroup]

@[simp] theorem Reader.setRootGroup_m_entries (st : Reader) (p : Nat) :
    (st.setRootGroup p).m_entries = st.m_entries := by
  simp [Reader.setRootGroup]

@[simp] theorem Reader.setRootGroup_m_tmpParent (st : Reader) (p : Nat) :
    (st.setRootGroup p).m_tmpParent = st.m_tmpParent := by
  simp [Reader.setRootGroup]

@[simp] theorem Reader.setRootGroup_m_randomStream (st : Reader) (p : Nat) :
    (st.setRootGroup p).m_randomStream = st.m_randomStream := by
  simp [Reader.setRootGroup]

@[simp] theorem Reader.setRootGroup_cipherLog (st : Reader) (p : Nat) :
    (st.setRootGroup p).cipherLog = st.cipherLog := by
  simp [Reader.setRootGroup]

@[simp] theorem Reader.setRootGroup_groupLog (st : Reader) (p : Nat) :
    (st.setRootGroup p).groupLog = st.groupLog := by
  simp [Reader.setRootGroup]

@[simp] theorem Reader.setRootGroup_entryLog (st : Reader) (p : Nat) :
    (st.setRootGroup p).entryLog = st.entryLog := by
  simp [Reader.setRootGroup]

@[simp] theorem Reader.setRootGroup_groupDefs (st : Reader) (p : Nat) :
    (st.setRootGroup p).groupDefs = st.groupDefs := by
  simp [Reader.setRootGroup]

@[simp] theorem Reader.setRootGroup_entryDefs (st : Reader) (p : Nat) :
    (st.setRootGroup p).entryDefs = st.entryDefs := by
  simp [Reader.setRootGroup]

@[simp] theorem Reader.setRootGroup_entries (st : Reader) (p : Nat) :
    (st.setRootGroup p).entries = st.entries := by
  simp [Reader.setRootGroup]

@[simp] theorem Reader.raiseError_pending (st : Reader) (m : String) :
    (st.raiseError m).pending = st.pending := by
  rfl

@[simp] theorem Reader.raiseError_xmlError (st : Reader) (m : String) :
    (st.raiseError m).xmlError = st.xmlError := by
  rfl

@[simp] theorem Reader.raiseError_m_strictMode (st : Reader) (m : String) :
    (st.raiseError m).m_strictMode = st.m_strictMode := by
  rfl

@[simp] theorem Reader.raiseError_m_binaryPool (st : Reader) (m : String) :
    (st.raiseError m).m_binaryPool = st.m_binaryPool := by
  rfl

@[simp] theorem Reader.raiseError_m_binaryMap (st : Reader) (m : String) :
    (st.raiseError m).m_binaryMap = st.m_binaryMap := by
  rfl

@[simp] theorem Reader.raiseError_m_groups (st : Reader) (m : String) :
    (st.raiseError m).m_groups = st.m_groups := by
  rfl

@[simp] theorem Reader.raiseError_m_entries (st : Reader) (m : String) :
    (st.raiseError m).m_entries = st.m_entries := by
  rfl

@[simp] theorem Reader.raiseError_m_tmpParent (st : Reader) (m : String) :
    (st.raiseError m).m_tmpParent = st.m_tmpParent := by
  rfl

@[simp] theorem Reader.raiseError_m_randomStream (st : Reader) (m : String) :
    (st.raiseError m).m_randomStream = st.m_randomStream := by
  rfl

@[simp] theorem Reader.raiseError_cipherLog (st : Reader) (m : String) :
    (st.raiseError m).cipherLog = st.cipherLog := by
  rfl

@[simp] theorem Reader.raiseError_groupLog (st : Reader) (m : String) :
    (st.raiseError m).groupLog = st.groupLog := by
  rfl

@[simp] theorem Reader.raiseError_entryLog (st : Reader) (m : String) :
    (st.raiseError m).entryLog = st.entryLog := by
  rfl

@[simp] theorem Reader.raiseError_groupDefs (st : Reader) (m : String) :
    (st.raiseError m).groupDefs = st.groupDefs := by
  rfl

@[simp] theorem Reader.raiseError_entryDefs (st : Reader) (m : String) :
    (st.raiseError m).entryDefs = st.entryDefs := by
  rfl

@[simp] theorem Reader.raiseError_groups (st : Reader) (m : String) :
    (st.raiseError m).groups = st.groups := by
  rfl

@[simp] theorem Reader.raiseError_entries (st : Reader) (m : String) :
    (st.raiseError m).entries = st.entries := by
  rfl

@[simp] theorem Reader.raiseError_rootGroup (st : Reader) (m : String) :
    (st.raiseError m).rootGroup = st.rootGroup := by
  rfl

@[simp] theorem Reader.setMeta_pending (st : Reader) (f : Metadata → Metadata) :
    (st.setMeta f).pending = st.pending := by
  rfl

@[simp] theorem Reader.setMeta_xmlError (st : Reader) (f : Metadata → Metadata) :
    (st.setMeta f).xmlError = st.xmlError := by
  rfl

@[simp] theorem Reader.setMeta_m_error (st : Reader) (f : Metadata → Metadata) :
    (st.setMeta f).m_error = st.m_error := by
  rfl

@[simp] theorem Reader.setMeta_m_strictMode (st : Reader) (f : Metadata → Metadata) :
    (st.setMeta f).m_strictMode = st.m_strictMode := by
  rfl

@[simp] theorem Reader.setMeta_m_binaryPool (st : Reader) (f : Metadata → Metadata) :
    (st.setMeta f).m_binaryPool = st.m_binaryPool := by
  rfl

@[simp] theorem Reader.setMeta_m_binaryMap (st : Reader) (f : Metadata → Metadata) :
    (st.setMeta f).m_binaryMap = st.m_binaryMap := by
  rfl

@[simp] theorem Reader.setMeta_m_groups (st : Reader) (f : Metadata → Metadata) :
    (st.setMeta f).m_groups = st.m_groups := by
  rfl

@[simp] theorem Reader.setMeta_m_entries (st : Reader) (f : Metadata → Metadata) :
    (st.setMeta f).m_entries = st.m_entries := by
  rfl

@[simp] theorem Reader.setMeta_m_tmpParent (st : Reader) (f : Metadata → Metadata) :
    (st.setMeta f).m_tmpParent = st.m_tmpParent := by
  rfl

@[simp] theorem Reader.setMeta_m_randomStream (st : Reader) (f : Metadata → Metadata) :
    (st.setMeta f).m_randomStream = st.m_randomStream := by
  rfl

@[simp] theorem Reader.setMeta_cipherLog (st : Reader) (f : Metadata → Metadata) :
    (st.setMeta f).cipherLog = st.cipherLog := by
  rfl

@[simp] theorem Reader.setMeta_groupLog (st : Reader) (f : Metadata → Metadata) :
    (st.setMeta f).groupLog = st.groupLog := by
  rfl

@[simp] theorem Reader.setMeta_entryLog (st : Reader) (f : Metadata → Metadata) :
    (st.setMeta f).entryLog = st.entryLog := by
  rfl

@[simp] theorem Reader.setMeta_groupDefs (st : Reader) (f : Metadata → Metadata) :
    (st.setMeta f).groupDefs = st.groupDefs := by
  rfl

@[simp] theorem Reader.setMeta_entryDefs (st : Reader) (f : Metadata → Metadata) :
    (st.setMeta f).entryDefs = st.entryDefs := by
  rfl

@[simp] theorem Reader.setMeta_groups (st : Reader) (f : Metadata → Metadata) :
    (st.setMeta f).groups = st.groups := by
  rfl

@[simp] theorem Reader.setMeta_entries (st : Reader) (f : Metadata → Metadata) :
    (st.setMeta f).entries = st.entries := by
  rfl

@[simp] theorem Reader.setMeta_rootGroup (st : Reader) (f : Metadata → Metadata) :
    (st.setMeta f).rootGroup = st.rootGroup := by
  rfl

@[simp] theorem Reader.raiseError_m_error (st : Reader) (m : String) :
    (st.raiseError m).m_error = true := rfl

@[simp] theorem Reader.updGroup_groups_length (st : Reader) (p : Nat) (f : DbGroup → DbGroup) :
    (st.updGroup p f).groups.length = st.groups.length := by
  unfold Reader.updGroup; split <;> simp

@[simp] theorem Reader.updEntry_entries_length (st : Reader) (p : Nat) (f : Entry → Entry) :
    (st.updEntry p f).entries.length = st.entries.length := by
  unfold Reader.updEntry; split <;> simp

@[simp] theorem Reader.cleanupParent_groups_length (st : Reader) (c : Nat) :
    (st.cleanupParent c).groups.length = st.groups.length := by
  unfold Reader.cleanupParent; split <;> simp

@[simp] theorem Reader.setParent_groups_length (st : Reader) (c p : Nat) :
    (st.setParent c p).groups.length = st.groups.length := by
  simp [Reader.setParent]

@[simp] theorem Reader.setGroup_groups_length (st : Reader) (e p : Nat) :
    (st.setGroup e p).groups.length = st.groups.length := by
  unfold Reader.setGroup; split
  · rfl
  · split <;> simp

@[simp] theorem Reader.setGroup_entries_length (st : Reader) (e p : Nat) :
    (st.setGroup e p).entries.length = st.entries.length := by
  unfold Reader.setGroup; split
  · rfl
  · split <;> simp

@[simp] theorem Reader.deleteGroup_groups_length (st : Reader) (p : Nat) :
    (st.deleteGroup p).groups.length = st.groups.length := by
  simp [Reader.deleteGroup]

@[simp] theorem Reader.deleteEntry_entries_length (st : Reader) (p : Nat) :
    (st.deleteEntry p).entries.length = st.entries.length := by
  simp [Reader.deleteEntry]

@[simp] theorem Reader.setRootGroup_groups_length (st : Reader) (p : Nat) :
    (st.setRootGroup p).groups.length = st.groups.length := by
  simp [Reader.setRootGroup]

@[simp] theorem getGroup_pending (uuid : Uuid) (st : Reader) :
    (getGroup uuid st).2.pending = st.pending := by
  unfold getGroup; split
  · rfl
  · split <;> simp [Reader.newGroup]

@[simp] theorem getGroup_xmlError (uuid : Uuid) (st : Reader) :
    (getGroup uuid st).2.xmlError = st.xmlError := by
  unfold getGroup; split
  · rfl
  · split <;> simp [Reader.newGroup]

@[simp] theorem getGroup_m_error (uuid : Uuid) (st : Reader) :
    (getGroup uuid st).2.m_error = st.m_error := by
  unfold getGroup; split
  · rfl
  · split <;> simp [Reader.newGroup]

@[simp] theorem getGroup_m_strictMode (uuid : Uuid) (st : Reader) :
    (getGroup uuid st).2.m_strictMode = st.m_strictMode := by
  unfold getGroup; split
  · rfl
  · split <;> simp [Reader.newGroup]

@[simp] theorem getGroup_m_binaryPool (uuid : Uuid) (st : Reader) :
    (getGroup uuid st).2.m_binaryPool = st.m_binaryPool := by
  unfold getGroup; split
  · rfl
  · split <;> simp [Reader.newGroup]

@[simp] theorem getGroup_m_binaryMap (uuid : Uuid) (st : Reader) :
    (getGroup uuid st).2.m_binaryMap = st.m_binaryMap := by
  unfold getGroup; split
  · rfl
  · split <;> simp [Reader.newGroup]

@[simp] theorem getGroup_m_entries (uuid : Uuid) (st : Reader) :
    (getGroup uuid st).2.m_entries = st.m_entries := by
  unfold getGroup; split
  · rfl
  · split <;> simp [Reader.newGroup]

@[simp] theorem getGroup_m_tmpParent (uuid : Uuid) (st : Reader) :
    (getGroup uuid st).2.m_tmpParent = st.m_tmpParent := by
  unfold getGroup; split
  · rfl
  · split <;> simp [Reader.newGroup]

@[simp] theorem getGroup_m_randomStream (uuid : Uuid) (st : Reader) :
    (getGroup uuid st).2.m_randomStream = st.m_randomStream := by
  unfold getGroup; split
  · rfl
  · split <;> simp [Reader.newGroup]

@[simp] theorem getGroup_cipherLog (uuid : Uuid) (st : Reader) :
    (getGroup uuid st).2.cipherLog = st.cipherLog := by
  unfold getGroup; split
  · rfl
  · split <;> simp [Reader.newGroup]

@[simp] theorem getGroup_entryLog (uuid : Uuid) (st : Reader) :
    (getGroup uuid st).2.entryLog = st.entryLog := by
  unfold getGroup; split
  · rfl
  · split <;> simp [Reader.newGroup]

@[simp] theorem getGroup_groupDefs (uuid : Uuid) (st : Reader) :
    (getGroup uuid st).2.groupDefs = st.groupDefs := by
  unfold getGroup; split
  · rfl
  · split <;> simp [Reader.newGroup]

@[simp] theorem getGroup_entryDefs (uuid : Uuid) (st : Reader) :
    (getGroup uuid st).2.entryDefs = st.entryDefs := by
  unfold getGroup; split
  · rfl
  · split <;> simp [Reader.newGroup]

@[simp] theorem getGroup_entries (uuid : Uuid) (st : Reader) :
    (getGroup uuid st).2.entries = st.entries := by
  unfold getGroup; split
  · rfl
  · split <;> simp [Reader.newGroup]

@[simp] theorem getGroup_rootGroup (uuid : Uuid) (st : Reader) :
    (getGroup uuid st).2.rootGroup = st.rootGroup := by
  unfold getGroup; split
  · rfl
  · split <;> simp [Reader.newGroup]

@[simp] theorem getEntry_pending (uuid : Uuid) (st : Reader) :
    (getEntry uuid st).2.pending = st.pending := by
  unfold getEntry; split
  · rfl
  · split <;> simp [Reader.newEntry]

@[simp] theorem getEntry_xmlError (uuid : Uuid) (st : Reader) :
    (getEntry uuid st).2.xmlError = st.xmlError := by
  unfold getEntry; split
  · rfl
  · split <;> simp [Reader.newEntry]

@[simp] theorem getEntry_m_error (uuid : Uuid) (st : Reader) :
    (getEntry uuid st).2.m_error = st.m_error := by
  unfold getEntry; split
  · rfl
  · split <;> simp [Reader.newEntry]

@[simp] theorem getEntry_m_strictMode (uuid : Uuid) (st : Reader) :
    (getEntry uuid st).2.m_strictMode = st.m_strictMode := by
  unfold getEntry; split
  · rfl
  · split <;> simp [Reader.newEntry]

@[simp] theorem getEntry_m_binaryPool (uuid : Uuid) (st : Reader) :
    (getEntry uuid st).2.m_binaryPool = st.m_binaryPool := by
  unfold getEntry; split
  · rfl
  · split <;> simp [Reader.newEntry]

@[simp] theorem getEntry_m_binaryMap (uuid : Uuid) (st : Reader) :
    (getEntry uuid st).2.m_binaryMap = st.m_binaryMap := by
  unfold getEntry; split
  · rfl
  · split <;> simp [Reader.newEntry]

@[simp] theorem getEntry_m_groups (uuid : Uuid) (st : Reader) :
    (getEntry uuid st).2.m_groups = st.m_groups := by
  unfold getEntry; split
  · rfl
  · split <;> simp [Reader.newEntry]

@[simp] theorem getEntry_m_tmpParent (uuid : Uuid) (st : Reader) :
    (getEntry uuid st).2.m_tmpParent = st.m_tmpParent := by
  unfold getEntry; split
  · rfl
  · split <;> simp [Reader.newEntry]

@[simp] theorem getEntry_m_randomStream (uuid : Uuid) (st : Reader) :
    (getEntry uuid st).2.m_randomStream = st.m_randomStream := by
  unfold getEntry; split
  · rfl
  · split <;> simp [Reader.newEntry]

@[simp] theorem getEntry_cipherLog (uuid : Uuid) (st : Reader) :
    (getEntry uuid st).2.cipherLog = st.cipherLog := by
  unfold getEntry; split
  · rfl
  · split <;> simp [Reader.newEntry]

@[simp] theorem getEntry_groupLog (uuid : Uuid) (st : Reader) :
    (getEntry uuid st).2.groupLog = st.groupLog := by
  unfold getEntry; split
  · rfl
  · split <;> simp [Reader.newEntry]

@[simp] theorem getEntry_groupDefs (uuid : Uuid) (st : Reader) :
    (getEntry uuid st).2.groupDefs = st.groupDefs := by
  unfold getEntry; split
  · rfl
  · split <;> simp [Reader.newEntry]

@[simp] theorem getEntry_entryDefs (uuid : Uuid) (st : Reader) :
    (getEntry uuid st).2.entryDefs = st.entryDefs := by
  unfold getEntry; split
  · rfl
  · split <;> simp [Reader.newEntry]

@[simp] theorem getEntry_rootGroup (uuid : Uuid) (st : Reader) :
    (getEntry uuid st).2.rootGroup = st.rootGroup := by
  unfold getEntry; split
  · rfl
  · split <;> simp [Reader.newEntry]

@[simp] theorem foldl_setParent_pending (cs : List Nat) (g : Nat) (st : Reader) :
    (cs.foldl (fun s child => s.setParent child g) st).pending = st.pending := by
  induction cs generalizing st with
  | nil => rfl
  | cons c rest ih => simp [List.foldl, ih]

@[simp] theorem foldl_setParent_xmlError (cs : List Nat) (g : Nat) (st : Reader) :
    (cs.foldl (fun s child => s.setParent child g) st).xmlError = st.xmlError := by
  induction cs generalizing st with
  | nil => rfl
  | cons c rest ih => simp [List.foldl, ih]

@[simp] theorem foldl_setParent_m_error (cs : List Nat) (g : Nat) (st : Reader) :
    (cs.foldl (fun s child => s.setParent child g) st).m_error = st.m_error := by
  induction cs generalizing st with
  | nil => rfl
  | cons c rest ih => simp [List.foldl, ih]

@[simp] theorem foldl_setParent_m_strictMode (cs : List Nat) (g : Nat) (st : Reader) :
    (cs.foldl (fun s child => s.setParent child g) st).m_strictMode = st.m_strictMode := by
  induction cs generalizing st with
  | nil => rfl
  | cons c rest ih => simp [List.foldl, ih]

@[simp] theorem foldl_setParent_m_binaryPool (cs : List Nat) (g : Nat) (st : Reader) :
    (cs.foldl (fun s child => s.setParent child g) st).m_binaryPool = st.m_binaryPool := by
  induction cs generalizing st with
  | nil => rfl
  | cons c rest ih => simp [List.foldl, ih]

@[simp] theorem foldl_setParent_m_binaryMap (cs : List Nat) (g : Nat) (st : Reader) :
    (cs.foldl (fun s child => s.setParent child g) st).m_binaryMap = st.m_binaryMap := by
  induction cs generalizing st with
  | nil => rfl
  | cons c rest ih => simp [List.foldl, ih]

@[simp] theorem foldl_setParent_m_groups (cs : List Nat) (g : Nat) (st : Reader) :
    (cs.foldl (fun s child => s.setParent child g) st).m_groups = st.m_groups := by
  induction cs generalizing st with
  | nil => rfl
  | cons c rest ih => simp [List.foldl, ih]

@[simp] theorem foldl_setParent_m_entries (cs : List Nat) (g : Nat) (st : Reader) :
    (cs.foldl (fun s child => s.setParent child g) st).m_entries = st.m_entries := by
  induction cs generalizing st with
  | nil => rfl
  | cons c rest ih => simp [List.foldl, ih]

@[simp] theorem foldl_setParent_m_tmpParent (cs : List Nat) (g : Nat) (st : Reader) :
    (cs.foldl (fun s child => s.setParent child g) st).m_tmpParent = st.m_tmpParent := by
  induction cs generalizing st with
  | nil => rfl
  | cons c rest ih => simp [List.foldl, ih]

@[simp] theorem foldl_setParent_m_randomStream (cs : List Nat) (g : Nat) (st : Reader) :
    (cs.foldl (fun s child => s.setParent child g) st).m_randomStream = st.m_randomStream := by
  induction cs generalizing st with
  | nil => rfl
  | cons c rest ih => simp [List.foldl, ih]

@[simp] theorem foldl_setParent_cipherLog (cs : List Nat) (g : Nat) (st : Reader) :
    (cs.foldl (fun s child => s.setParent child g) st).cipherLog = st.cipherLog := by
  induction cs generalizing st with
  | nil => rfl
  | cons c rest ih => simp [List.foldl, ih]

@[simp] theorem foldl_setParent_groupLog (cs : List Nat) (g : Nat) (st : Reader) :
    (cs.foldl (fun s child => s.setParent child g) st).groupLog = st.groupLog := by
  induction cs generalizing st with
  | nil => rfl
  | cons c rest ih => simp [List.foldl, ih]

@[simp] theorem foldl_setParent_entryLog (cs : List Nat) (g : Nat) (st : Reader) :
    (cs.foldl (fun s child => s.setParent child g) st).entryLog = st.entryLog := by
  induction cs generalizing st with
  | nil => rfl
  | cons c rest ih => simp [List.foldl, ih]

@[simp] theorem foldl_setParent_groupDefs (cs : List Nat) (g : Nat) (st : Reader) :
    (cs.foldl (fun s child => s.setParent child g) st).groupDefs = st.groupDefs := by
  induction cs generalizing st with
  | nil => rfl
  | cons c rest ih => simp [List.foldl, ih]

@[simp] theorem foldl_setParent_entryDefs (cs : List Nat) (g : Nat) (st : Reader) :
    (cs.foldl (fun s child => s.setParent child g) st).entryDefs = st.entryDefs := by
  induction cs generalizing st with
  | nil => rfl
  | cons c rest ih => simp [List.foldl, ih]

@[simp] theorem foldl_setParent_entries (cs : List Nat) (g : Nat) (st : Reader) :
    (cs.foldl (fun s child => s.setParent child g) st).entries = st.entries := by
  induction cs generalizing st with
  | nil => rfl
  | cons c rest ih => simp [List.foldl, ih]

@[simp] theorem foldl_setParent_rootGroup (cs : List Nat) (g : Nat) (st : Reader) :
    (cs.foldl (fun s child => s.setParent child g) st).rootGroup = st.rootGroup := by
  induction cs generalizing st with
  | nil => rfl
  | cons c rest ih => simp [List.foldl, ih]

@[simp] theorem foldl_setGroup_pending (es : List Nat) (g : Nat) (st : Reader) :
    (es.foldl (fun s entry => s.setGroup entry g) st).pending = st.pending := by
  induction es generalizing st with
  | nil => rfl
  | cons e rest ih => simp [List.foldl, ih]

@[simp] theorem foldl_setGroup_xmlError (es : List Nat) (g : Nat) (st : Reader) :
    (es.foldl (fun s entry => s.setGroup entry g) st).xmlError = st.xmlError := by
  induction es generalizing st with
  | nil => rfl
  | cons e rest ih => simp [List.foldl, ih]

@[simp] theorem foldl_setGroup_m_error (es : List Nat) (g : Nat) (st : Reader) :
    (es.foldl (fun s entry => s.setGroup entry g) st).m_error = st.m_error := by
  induction es generalizing st with
  | nil => rfl
  | cons e rest ih => simp [List.foldl, ih]

@[simp] theorem foldl_setGroup_m_strictMode (es : List Nat) (g : Nat) (st : Reader) :
    (es.foldl (fun s entry => s.setGroup entry g) st).m_strictMode = st.m_strictMode := by
  induction es generalizing st with
  | nil => rfl
  | cons e rest ih => simp [List.foldl, ih]

@[simp] theorem foldl_setGroup_m_binaryPool (es : List Nat) (g : Nat) (st : Reader) :
    (es.foldl (fun s entry => s.setGroup entry g) st).m_binaryPool = st.m_binaryPool := by
  induction es generalizing st with
  | nil => rfl
  | cons e rest ih => simp [List.foldl, ih]

@[simp] theorem foldl_setGroup_m_binaryMap (es : List Nat) (g : Nat) (st : Reader) :
    (es.foldl (fun s entry => s.setGroup entry g) st).m_binaryMap = st.m_binaryMap := by
  induction es generalizing st with
  | nil => rfl
  | cons e rest ih => simp [List.foldl, ih]

@[simp] theorem foldl_setGroup_m_groups (es : List Nat) (g : Nat) (st : Reader) :
    (es.foldl (fun s entry => s.setGroup entry g) st).m_groups = st.m_groups := by
  induction es generalizing st with
  | nil => rfl
  | cons e rest ih => simp [List.foldl, ih]

@[simp] theorem foldl_setGroup_m_entries (es : List Nat) (g : Nat) (st : Reader) :
    (es.foldl (fun s entry => s.setGroup entry g) st).m_entries = st.m_entries := by
  induction es generalizing st with
  | nil => rfl
  | cons e rest ih => simp [List.foldl, ih]

@[simp] theorem foldl_setGroup_m_tmpParent (es : List Nat) (g : Nat) (st : Reader) :
    (es.foldl (fun s entry => s.setGroup entry g) st).m_tmpParent = st.m_tmpParent := by
  induction es generalizing st with
  | nil => rfl
  | cons e rest ih => simp [List.foldl, ih]

@[simp] theorem foldl_setGroup_m_randomStream (es : List Nat) (g : Nat) (st : Reader) :
    (es.foldl (fun s entry => s.setGroup entry g) st).m_randomStream = st.m_randomStream := by
  induction es generalizing st with
  | nil => rfl
  | cons e rest ih => simp [List.foldl, ih]

@[simp] theorem foldl_setGroup_cipherLog (es : List Nat) (g : Nat) (st : Reader) :
    (es.foldl (fun s entry => s.setGroup entry g) st).cipherLog = st.cipherLog := by
  induction es generalizing st with
  | nil => rfl
  | cons e rest ih => simp [List.foldl, ih]

@[simp] theorem foldl_setGroup_groupLog (es : List Nat) (g : Nat) (st : Reader) :
    (es.foldl (fun s entry => s.setGroup entry g) st).groupLog = st.groupLog := by
  induction es generalizing st with
  | nil => rfl
  | cons e rest ih => simp [List.foldl, ih]

@[simp] theorem foldl_setGroup_entryLog (es : List Nat) (g : Nat) (st : Reader) :
    (es.foldl (fun s entry => s.setGroup entry g) st).entryLog = st.entryLog := by
  induction es generalizing st with
  | nil => rfl
  | cons e rest ih => simp [List.foldl, ih]

@[simp] theorem foldl_setGroup_groupDefs (es : List Nat) (g : Nat) (st : Reader) :
    (es.foldl (fun s entry => s.setGroup entry g) st).groupDefs = st.groupDefs := by
  induction es generalizing st with
  | nil => rfl
  | cons e rest ih => simp [List.foldl, ih]

@[simp] theorem foldl_setGroup_entryDefs (es : List Nat) (g : Nat) (st : Reader) :
    (es.foldl (fun s entry => s.setGroup entry g) st).entryDefs = st.entryDefs := by
  induction es generalizing st with
  | nil => rfl
  | cons e rest ih => simp [List.foldl, ih]

@[simp] theorem foldl_setGroup_rootGroup (es : List Nat) (g : Nat) (st : Reader) :
    (es.foldl (fun s entry => s.setGroup entry g) st).rootGroup = st.rootGroup := by
  induction es generalizing st with
  | nil => rfl
  | cons e rest ih => simp [List.foldl, ih]

@[simp] theorem addHistoryItems_pending (entry : Nat) (items : List Nat) (st : Reader) :
    (addHistoryItems entry items st).pending = st.pending := by
  induction items generalizing st with
  | nil => rfl
  | cons x rest ih =>
    unfold addHistoryItems
    rw [ih]
    simp only [Reader.updEntry_pending]
    split
    · split <;> simp
    · rfl

@[simp] theorem addHistoryItems_xmlError (entry : Nat) (items : List Nat) (st : Reader) :
    (addHistoryItems entry items st).xmlError = st.xmlError := by
  induction items generalizing st with
  | nil => rfl
  | cons x rest ih =>
    unfold addHistoryItems
    rw [ih]
    simp only [Reader.updEntry_xmlError]
    split
    · split <;> simp
    · rfl

@[simp] theorem addHistoryItems_m_strictMode (entry : Nat) (items : List Nat) (st : Reader) :
    (addHistoryItems entry items st).m_strictMode = st.m_strictMode := by
  induction items generalizing st with
  | nil => rfl
  | cons x rest ih =>
    unfold addHistoryItems
    rw [ih]
    simp only [Reader.updEntry_m_strictMode]
    split
    · split <;> simp
    · rfl

@[simp] theorem addHistoryItems_m_binaryPool (entry : Nat) (items : List Nat) (st : Reader) :
    (addHistoryItems entry items st).m_binaryPool = st.m_binaryPool := by
  induction items generalizing st with
  | nil => rfl
  | cons x rest ih =>
    unfold addHistoryItems
    rw [ih]
    simp only [Reader.updEntry_m_binaryPool]
    split
    · split <;> simp
    · rfl

@[simp] theorem addHistoryItems_m_binaryMap (entry : Nat) (items : List Nat) (st : Reader) :
    (addHistoryItems entry items st).m_binaryMap = st.m_binaryMap := by
  induction items generalizing st with
  | nil => rfl
  | cons x rest ih =>
    unfold addHistoryItems
    rw [ih]
    simp only [Reader.updEntry_m_binaryMap]
    split
    · split <;> simp
    · rfl

@[simp] theorem addHistoryItems_m_groups (entry : Nat) (items : List Nat) (st : Reader) :
    (addHistoryItems entry items st).m_groups = st.m_groups := by
  induction items generalizing st with
  | nil => rfl
  | cons x rest ih =>
    unfold addHistoryItems
    rw [ih]
    simp only [Reader.updEntry_m_groups]
    split
    · split <;> simp
    · rfl

@[simp] theorem addHistoryItems_m_entries (entry : Nat) (items : List Nat) (st : Reader) :
    (addHistoryItems entry items st).m_entries = st.m_entries := by
  induction items generalizing st with
  | nil => rfl
  | cons x rest ih =>
    unfold addHistoryItems
    rw [ih]
    simp only [Reader.updEntry_m_entries]
    split
    · split <;> simp
    · rfl

@[simp] theorem addHistoryItems_m_tmpParent (entry : Nat) (items : List Nat) (st : Reader) :
    (addHistoryItems entry items st).m_tmpParent = st.m_tmpParent := by
  induction items generalizing st with
  | nil => rfl
  | cons x rest ih =>
    unfold addHistoryItems
    rw [ih]
    simp only [Reader.updEntry_m_tmpParent]
    split
    · split <;> simp
    · rfl

@[simp] theorem addHistoryItems_m_randomStream (entry : Nat) (items : List Nat) (st : Reader) :
    (addHistoryItems entry items st).m_randomStream = st.m_randomStream := by
  induction items generalizing st with
  | nil => rfl
  | cons x rest ih =>
    unfold addHistoryItems
    rw [ih]
    simp only [Reader.updEntry_m_randomStream]
    split
    · split <;> simp
    · rfl

@[simp] theorem addHistoryItems_cipherLog (entry : Nat) (items : List Nat) (st : Reader) :
    (addHistoryItems entry items st).cipherLog = st.cipherLog := by
  induction items generalizing st with
  | nil => rfl
  | cons x rest ih =>
    unfold addHistoryItems
    rw [ih]
    simp only [Reader.updEntry_cipherLog]
    split
    · split <;> simp
    · rfl

@[simp] theorem addHistoryItems_groupLog (entry : Nat) (items : List Nat) (st : Reader) :
    (addHistoryItems entry items st).groupLog = st.groupLog := by
  induction items generalizing st with
  | nil => rfl
  | cons x rest ih =>
    unfold addHistoryItems
    rw [ih]
    simp only [Reader.updEntry_groupLog]
    split
    · split <;> simp
    · rfl

@[simp] theorem addHistoryItems_entryLog (entry : Nat) (items : List Nat) (st : Reader) :
    (addHistoryItems entry items st).entryLog = st.entryLog := by
  induction items generalizing st with
  | nil => rfl
  | cons x rest ih =>
    unfold addHistoryItems
    rw [ih]
    simp only [Reader.updEntry_entryLog]
    split
    · split <;> simp
    · rfl

@[simp] theorem addHistoryItems_groupDefs (entry : Nat) (items : List Nat) (st : Reader) :
    (addHistoryItems entry items st).groupDefs = st.groupDefs := by
  induction items generalizing st with
  | nil => rfl
  | cons x rest ih =>
    unfold addHistoryItems
    rw [ih]
    simp only [Reader.updEntry_groupDefs]
    split
    · split <;> simp
    · rfl

@[simp] theorem addHistoryItems_entryDefs (entry : Nat) (items : List Nat) (st : Reader) :
    (addHistoryItems entry items st).entryDefs = st.entryDefs := by
  induction items generalizing st with
  | nil => rfl
  | cons x rest ih =>
    unfold addHistoryItems
    rw [ih]
    simp only [Reader.updEntry_entryDefs]
    split
    · split <;> simp
    · rfl

@[simp] theorem addHistoryItems_groups (entry : Nat) (items : List Nat) (st : Reader) :
    (addHistoryItems entry items st).groups = st.groups := by
  induction items generalizing st with
  | nil => rfl
  | cons x rest ih =>
    unfold addHistoryItems
    rw [ih]
    simp only [Reader.updEntry_groups]
    split
    · split <;> simp
    · rfl

@[simp] theorem addHistoryItems_rootGroup (entry : Nat) (items : List Nat) (st : Reader) :
    (addHistoryItems entry items st).rootGroup = st.rootGroup := by
  induction items generalizing st with
  | nil => rfl
  | cons x rest ih =>
    unfold addHistoryItems
    rw [ih]
    simp only [Reader.updEntry_rootGroup]
    split
    · split <;> simp
    · rfl

/-! ### Ordered maps -/

theorem mapGet_mapSet_self {κ α : Type} [DecidableEq κ] (k : κ) (v : α) (l : List (κ × α)) :
    mapGet k (mapSet k v l) = some v := by
  induction l with
  | nil => simp [mapSet, mapGet]
  | cons x rest ih =>
    obtain ⟨k1, v1⟩ := x
    by_cases h : k1 = k
    · simp [mapSet, mapGet, h]
    · simp [mapSet, mapGet, h, ih]

theorem mapGet_mapSet_of_ne {κ α : Type} [DecidableEq κ] {k k1 : κ} (h : k ≠ k1) (v : α)
    (l : List (κ × α)) : mapGet k (mapSet k1 v l) = mapGet k l := by
  induction l with
  | nil => simp [mapSet, mapGet, Ne.symm h]
  | cons x rest ih =>
    obtain ⟨k2, v2⟩ := x
    by_cases h2 : k2 = k1
    · subst h2
      simp [mapSet, mapGet, Ne.symm h]
    · by_cases h3 : k2 = k
      · subst h3
        simp [mapSet, mapGet, h2]
      · simp [mapSet, mapGet, h2, h3, ih]

theorem mapGet_mapSet_of_some {κ α : Type} [DecidableEq κ] {k k1 : κ} {v : α} (w : α)
    {l : List (κ × α)} (h : mapGet k l = some v) (h1 : mapGet k1 l = none) :
    mapGet k (mapSet k1 w l) = some v := by
  have hne : k ≠ k1 := by
    intro e
    subst e
    simp [h] at h1
  rw [mapGet_mapSet_of_ne hne, h]


/-! ### Every step of the reader keeps a stable property -/

theorem snd_of_eq {α : Type} {P : Reader → Prop} {r : α × Reader} {a : α} {t : Reader}
    (e : r = (a, t)) (h : P r.2) : P t := by
  subst e
  exact h

theorem stable_ite {P : Reader → Prop} {c : Prop} [Decidable c] {a b : Reader}
    (ha : P a) (hb : P b) : P (if c then a else b) := by
  split <;> assumption

theorem stable_ite_snd {α : Type} {P : Reader → Prop} {c : Prop} [Decidable c]
    {a b : α × Reader} (ha : P a.2) (hb : P b.2) : P (if c then a else b).2 := by
  split <;> assumption

theorem foldl_stable {α : Type} {P : Reader → Prop} {f : Reader → α → Reader}
    (hf : ∀ s a, P s → P (f s a)) {xs : List α} {s : Reader} (h : P s) :
    P (xs.foldl f s) := by
  induction xs generalizing s with
  | nil => exact h
  | cons x rest ih => exact ih (hf s x h)

theorem forEachChild_stable {σ : Type} {P : Reader → Prop}
    {body : XmlElement → σ × Reader → σ × Reader}
    (hbody : ∀ c s, P s.2 → P (body c s).2) {xs : List XmlElement} {s : σ × Reader}
    (h : P s.2) : P (forEachChild body xs s).2 := by
  induction xs generalizing s with
  | nil => exact h
  | cons x rest ih =>
    unfold forEachChild
    split
    · exact h
    · exact ih (hbody x s h)

theorem getGroup_registered {u : Uuid} {st s1 : Reader} {g : Nat}
    (h : getGroup u st = (some g, s1)) : mapGet u s1.m_groups = some g := by
  unfold getGroup at h
  split at h
  · cases h
  · split at h
    · cases h
      simpa using (by assumption)
    · cases h
      simp [Reader.newGroup, mapGet_mapSet_self]

theorem getEntry_registered {u : Uuid} {st s1 : Reader} {e : Nat}
    (h : getEntry u st = (some e, s1)) : mapGet u s1.m_entries = some e := by
  unfold getEntry at h
  split at h
  · cases h
  · split at h
    · cases h
      simpa using (by assumption)
    · cases h
      simp [Reader.newEntry, mapGet_mapSet_self]

theorem Reader.deleteGroup_stable {P : Reader → Prop} (hP : StableLeaf P) {st : Reader} {p : Nat}
    (h : P st) : P (st.deleteGroup p) := by
  unfold Reader.deleteGroup
  repeat' (first
    | assumption
    | with_reducible apply stable_ite
    | with_reducible apply stable_ite_snd
    | exact fun _ => rfl
    | with_reducible apply hP.updGroup
    | with_reducible apply hP.updEntry
    | with_reducible apply hP.raiseError
    | with_reducible apply hP.setMeta
    | with_reducible apply hP.getGroup
    | with_reducible apply hP.getEntry
    | with_reducible apply hP.randomUuid
    | with_reducible apply hP.cipherProcess
    | with_reducible apply hP.setNullDeref
    | with_reducible apply hP.setXmlError
    | with_reducible apply hP.setHeaderHash
    | with_reducible apply hP.setBinaryPool
    | with_reducible apply hP.addDeletedObject
    | refine snd_of_eq (by assumption) (hP.getGroup _ _ ?_)
    | refine snd_of_eq (by assumption) (hP.getEntry _ _ ?_)
    | refine snd_of_eq (by assumption) (hP.cipherProcess _ _ _ _ ?_)
    | refine snd_of_eq (by assumption) (hP.randomUuid _ _ ?_)
    | dsimp only
    | split)

theorem Reader.deleteEntry_stable {P : Reader → Prop} (hP : StableLeaf P) {st : Reader} {p : Nat}
    (h : P st) : P (st.deleteEntry p) := by
  unfold Reader.deleteEntry
  repeat' (first
    | assumption
    | with_reducible apply stable_ite
    | with_reducible apply stable_ite_snd
    | exact fun _ => rfl
    | with_reducible apply hP.updGroup
    | with_reducible apply hP.updEntry
    | with_reducible apply hP.raiseError
    | with_reducible apply hP.setMeta
    | with_reducible apply hP.getGroup
    | with_reducible apply hP.getEntry
    | with_reducible apply hP.randomUuid
    | with_reducible apply hP.cipherProcess
    | with_reducible apply hP.setNullDeref
    | with_reducible apply hP.setXmlError
    | with_reducible apply hP.setHeaderHash
    | with_reducible apply hP.setBinaryPool
    | with_reducible apply hP.addDeletedObject
    | refine snd_of_eq (by assumption) (hP.getGroup _ _ ?_)
    | refine snd_of_eq (by assumption) (hP.getEntry _ _ ?_)
    | refine snd_of_eq (by assumption) (hP.cipherProcess _ _ _ _ ?_)
    | refine snd_of_eq (by assumption) (hP.randomUuid _ _ ?_)
    | dsimp only
    | split)

theorem readString_stable {P : Reader → Prop} (hP : StableLeaf P) {x : XmlElement} {st : Reader}
    (h : P st) : P ((readString x st).2) := by
  unfold readString
  repeat' (first
    | assumption
    | with_reducible apply stable_ite
    | with_reducible apply stable_ite_snd
    | exact fun _ => rfl
    | with_reducible apply hP.updGroup
    | with_reducible apply hP.updEntry
    | with_reducible apply hP.raiseError
    | with_reducible apply hP.setMeta
    | with_reducible apply hP.getGroup
    | with_reducible apply hP.getEntry
    | with_reducible apply hP.randomUuid
    | with_reducible apply hP.cipherProcess
    | with_reducible apply hP.setNullDeref
    | with_reducible apply hP.setXmlError
    | with_reducible apply hP.setHeaderHash
    | with_reducible apply hP.setBinaryPool
    | with_reducible apply hP.addDeletedObject
    | refine snd_of_eq (by assumption) (hP.getGroup _ _ ?_)
    | refine snd_of_eq (by assumption) (hP.getEntry _ _ ?_)
    | refine snd_of_eq (by assumption) (hP.cipherProcess _ _ _ _ ?_)
    | refine snd_of_eq (by assumption) (hP.randomUuid _ _ ?_)
    | dsimp only
    | split)

theorem readBool_stable {P : Reader → Prop} (hP : StableLeaf P) {x : XmlElement} {st : Reader}
    (h : P st) : P ((readBool x st).2) := by
  unfold readBool
  repeat' (first
    | assumption
    | with_reducible apply stable_ite
    | with_reducible apply stable_ite_snd
    | exact fun _ => rfl
    | with_reducible apply hP.updGroup
    | with_reducible apply hP.updEntry
    | with_reducible apply hP.raiseError
    | with_reducible apply hP.setMeta
    | with_reducible apply hP.getGroup
    | with_reducible apply hP.getEntry
    | with_reducible apply hP.randomUuid
    | with_reducible apply hP.cipherProcess
    | with_reducible apply hP.setNullDeref
    | with_reducible apply hP.setXmlError
    | with_reducible apply hP.setHeaderHash
    | with_reducible apply hP.setBinaryPool
    | with_reducible apply hP.addDeletedObject
    | with_reducible apply readString_stable hP
    | refine snd_of_eq (by assumption) (readString_stable hP ?_)
    | refine snd_of_eq (by assumption) (hP.getGroup _ _ ?_)
    | refine snd_of_eq (by assumption) (hP.getEntry _ _ ?_)
    | refine snd_of_eq (by assumption) (hP.cipherProcess _ _ _ _ ?_)
    | refine snd_of_eq (by assumption) (hP.randomUuid _ _ ?_)
    | dsimp only
    | split)

theorem readNumber_stable {P : Reader → Prop} (hP : StableLeaf P) {env : Env} {x : XmlElement} {st : Reader}
    (h : P st) : P ((readNumber env x st).2) := by
  unfold readNumber
  repeat' (first
    | assumption
    | with_reducible apply stable_ite
    | with_reducible apply stable_ite_snd
    | exact fun _ => rfl
    | with_reducible apply hP.updGroup
    | with_reducible apply hP.updEntry
    | with_reducible apply hP.raiseError
    | with_reducible apply hP.setMeta
    | with_reducible apply hP.getGroup
    | with_reducible apply hP.getEntry
    | with_reducible apply hP.randomUuid
    | with_reducible apply hP.cipherProcess
    | with_reducible apply hP.setNullDeref
    | with_reducible apply hP.setXmlError
    | with_reducible apply hP.setHeaderHash
    | with_reducible apply hP.setBinaryPool
    | with_reducible apply hP.addDeletedObject
    | with_reducible apply readString_stable hP
    | refine snd_of_eq (by assumption) (readString_stable hP ?_)
    | refine snd_of_eq (by assumption) (hP.getGroup _ _ ?_)
    | refine snd_of_eq (by assumption) (hP.getEntry _ _ ?_)
    | refine snd_of_eq (by assumption) (hP.cipherProcess _ _ _ _ ?_)
    | refine snd_of_eq (by assumption) (hP.randomUuid _ _ ?_)
    | dsimp only
    | split)

theorem readBinary_stable {P : Reader → Prop} (hP : StableLeaf P) {env : Env} {x : XmlElement} {st : Reader}
    (h : P st) : P ((readBinary env x st).2) := by
  unfold readBinary
  repeat' (first
    | assumption
    | with_reducible apply stable_ite
    | with_reducible apply stable_ite_snd
    | exact fun _ => rfl
    | with_reducible apply hP.updGroup
    | with_reducible apply hP.updEntry
    | with_reducible apply hP.raiseError
    | with_reducible apply hP.setMeta
    | with_reducible apply hP.getGroup
    | with_reducible apply hP.getEntry
    | with_reducible apply hP.randomUuid
    | with_reducible apply hP.cipherProcess
    | with_reducible apply hP.setNullDeref
    | with_reducible apply hP.setXmlError
    | with_reducible apply hP.setHeaderHash
    | with_reducible apply hP.setBinaryPool
    | with_reducible apply hP.addDeletedObject
    | with_reducible apply readString_stable hP
    | refine snd_of_eq (by assumption) (readString_stable hP ?_)
    | refine snd_of_eq (by assumption) (hP.getGroup _ _ ?_)
    | refine snd_of_eq (by assumption) (hP.getEntry _ _ ?_)
    | refine snd_of_eq (by assumption) (hP.cipherProcess _ _ _ _ ?_)
    | refine snd_of_eq (by assumption) (hP.randomUuid _ _ ?_)
    | dsimp only
    | split)

theorem readUuid_stable {P : Reader → Prop} (hP : StableLeaf P) {env : Env} {x : XmlElement} {st : Reader}
    (h : P st) : P ((readUuid env x st).2) := by
  unfold readUuid
  repeat' (first
    | assumption
    | with_reducible apply stable_ite
    | with_reducible apply stable_ite_snd
    | exact fun _ => rfl
    | with_reducible apply hP.updGroup
    | with_reducible apply hP.updEntry
    | with_reducible apply hP.raiseError
    | with_reducible apply hP.setMeta
    | with_reducible apply hP.getGroup
    | with_reducible apply hP.getEntry
    | with_reducible apply hP.randomUuid
    | with_reducible apply hP.cipherProcess
    | with_reducible apply hP.setNullDeref
    | with_reducible apply hP.setXmlError
    | with_reducible apply hP.setHeaderHash
    | with_reducible apply hP.setBinaryPool
    | with_reducible apply hP.addDeletedObject
    | with_reducible apply readBinary_stable hP
    | refine snd_of_eq (by assumption) (readBinary_stable hP ?_)
    | refine snd_of_eq (by assumption) (hP.getGroup _ _ ?_)
    | refine snd_of_eq (by assumption) (hP.getEntry _ _ ?_)
    | refine snd_of_eq (by assumption) (hP.cipherProcess _ _ _ _ ?_)
    | refine snd_of_eq (by assumption) (hP.randomUuid _ _ ?_)
    | dsimp only
    | split)

theorem readCompressedBinary_stable {P : Reader → Prop} (hP : StableLeaf P) {env : Env} {x : XmlElement} {st : Reader}
    (h : P st) : P ((readCompressedBinary env x st).2) := by
  unfold readCompressedBinary
  repeat' (first
    | assumption
    | with_reducible apply stable_ite
    | with_reducible apply stable_ite_snd
    | exact fun _ => rfl
    | with_reducible apply hP.updGroup
    | with_reducible apply hP.updEntry
    | with_reducible apply hP.raiseError
    | with_reducible apply hP.setMeta
    | with_reducible apply hP.getGroup
    | with_reducible apply hP.getEntry
    | with_reducible apply hP.randomUuid
    | with_reducible apply hP.cipherProcess
    | with_reducible apply hP.setNullDeref
    | with_reducible apply hP.setXmlError
    | with_reducible apply hP.setHeaderHash
    | with_reducible apply hP.setBinaryPool
    | with_reducible apply hP.addDeletedObject
    | with_reducible apply readBinary_stable hP
    | refine snd_of_eq (by assumption) (readBinary_stable hP ?_)
    | refine snd_of_eq (by assumption) (hP.getGroup _ _ ?_)
    | refine snd_of_eq (by assumption) (hP.getEntry _ _ ?_)
    | refine snd_of_eq (by assumption) (hP.cipherProcess _ _ _ _ ?_)
    | refine snd_of_eq (by assumption) (hP.randomUuid _ _ ?_)
    | dsimp only
    | split)

theorem readDateTime_stable {P : Reader → Prop} (hP : StableLeaf P) {env : Env} {x : XmlElement} {st : Reader}
    (h : P st) : P ((readDateTime env x st).2) := by
  unfold readDateTime
  repeat' (first
    | assumption
    | with_reducible apply stable_ite
    | with_reducible apply stable_ite_snd
    | exact fun _ => rfl
    | with_reducible apply hP.updGroup
    | with_reducible apply hP.updEntry
    | with_reducible apply hP.raiseError
    | with_reducible apply hP.setMeta
    | with_reducible apply hP.getGroup
    | with_reducible apply hP.getEntry
    | with_reducible apply hP.randomUuid
    | with_reducible apply hP.cipherProcess
    | with_reducible apply hP.setNullDeref
    | with_reducible apply hP.setXmlError
    | with_reducible apply hP.setHeaderHash
    | with_reducible apply hP.setBinaryPool
    | with_reducible apply hP.addDeletedObject
    | with_reducible apply readString_stable hP
    | refine snd_of_eq (by assumption) (readString_stable hP ?_)
    | refine snd_of_eq (by assumption) (hP.getGroup _ _ ?_)
    | refine snd_of_eq (by assumption) (hP.getEntry _ _ ?_)
    | refine snd_of_eq (by assumption) (hP.cipherProcess _ _ _ _ ?_)
    | refine snd_of_eq (by assumption) (hP.randomUuid _ _ ?_)
    | dsimp only
    | split)

theorem readColor_stable {P : Reader → Prop} (hP : StableLeaf P) {env : Env} {x : XmlElement} {st : Reader}
    (h : P st) : P ((readColor env x st).2) := by
  unfold readColor
  repeat' (first
    | assumption
    | with_reducible apply stable_ite
    | with_reducible apply stable_ite_snd
    | exact fun _ => rfl
    | with_reducible apply hP.updGroup
    | with_reducible apply hP.updEntry
    | with_reducible apply hP.raiseError
    | with_reducible apply hP.setMeta
    | with_reducible apply hP.getGroup
    | with_reducible apply hP.getEntry
    | with_reducible apply hP.randomUuid
    | with_reducible apply hP.cipherProcess
    | with_reducible apply hP.setNullDeref
    | with_reducible apply hP.setXmlError
    | with_reducible apply hP.setHeaderHash
    | with_reducible apply hP.setBinaryPool
    | with_reducible apply hP.addDeletedObject
    | with_reducible apply readString_stable hP
    | refine snd_of_eq (by assumption) (readString_stable hP ?_)
    | refine snd_of_eq (by assumption) (hP.getGroup _ _ ?_)
    | refine snd_of_eq (by assumption) (hP.getEntry _ _ ?_)
    | refine snd_of_eq (by assumption) (hP.cipherProcess _ _ _ _ ?_)
    | refine snd_of_eq (by assumption) (hP.randomUuid _ _ ?_)
    | dsimp only
    | split)

theorem parseMemoryProtectionChild_stable {P : Reader → Prop} (hP : StableLeaf P) {c : XmlElement} {s : Unit × Reader}
    (h : P s.2) : P ((parseMemoryProtectionChild c s).2) := by
  unfold parseMemoryProtectionChild
  repeat' (first
    | assumption
    | with_reducible apply stable_ite
    | with_reducible apply stable_ite_snd
    | exact fun _ => rfl
    | with_reducible apply hP.updGroup
    | with_reducible apply hP.updEntry
    | with_reducible apply hP.raiseError
    | with_reducible apply hP.setMeta
    | with_reducible apply hP.getGroup
    | with_reducible apply hP.getEntry
    | with_reducible apply hP.randomUuid
    | with_reducible apply hP.cipherProcess
    | with_reducible apply hP.setNullDeref
    | with_reducible apply hP.setXmlError
    | with_reducible apply hP.setHeaderHash
    | with_reducible apply hP.setBinaryPool
    | with_reducible apply hP.addDeletedObject
    | with_reducible apply readBool_stable hP
    | refine snd_of_eq (by assumption) (readBool_stable hP ?_)
    | refine snd_of_eq (by assumption) (hP.getGroup _ _ ?_)
    | refine snd_of_eq (by assumption) (hP.getEntry _ _ ?_)
    | refine snd_of_eq (by assumption) (hP.cipherProcess _ _ _ _ ?_)
    | refine snd_of_eq (by assumption) (hP.randomUuid _ _ ?_)
    | dsimp only
    | split)

theorem parseMemoryProtection_stable {P : Reader → Prop} (hP : StableLeaf P) {x : XmlElement} {st : Reader}
    (h : P st) : P (parseMemoryProtection x st) := by
  unfold parseMemoryProtection
  repeat' (first
    | assumption
    | with_reducible apply stable_ite
    | with_reducible apply stable_ite_snd
    | exact forEachChild_stable (fun _ _ hs => parseMemoryProtectionChild_stable hP hs) h
    | exact snd_of_eq (by assumption) (forEachChild_stable (fun _ _ hs => parseMemoryProtectionChild_stable hP hs) h)
    | exact fun _ => rfl
    | with_reducible apply hP.updGroup
    | with_reducible apply hP.updEntry
    | with_reducible apply hP.raiseError
    | with_reducible apply hP.setMeta
    | with_reducible apply hP.getGroup
    | with_reducible apply hP.getEntry
    | with_reducible apply hP.randomUuid
    | with_reducible apply hP.cipherProcess
    | with_reducible apply hP.setNullDeref
    | with_reducible apply hP.setXmlError
    | with_reducible apply hP.setHeaderHash
    | with_reducible apply hP.setBinaryPool
    | with_reducible apply hP.addDeletedObject
    | refine snd_of_eq (by assumption) (hP.getGroup _ _ ?_)
    | refine snd_of_eq (by assumption) (hP.getEntry _ _ ?_)
    | refine snd_of_eq (by assumption) (hP.cipherProcess _ _ _ _ ?_)
    | refine snd_of_eq (by assumption) (hP.randomUuid _ _ ?_)
    | dsimp only
    | split)

theorem parseIconChild_stable {P : Reader → Prop} (hP : StableLeaf P) {env : Env} {c : XmlElement} {s : IconLocals × Reader}
    (h : P s.2) : P ((parseIconChild env c s).2) := by
  unfold parseIconChild
  repeat' (first
    | assumption
    | with_reducible apply stable_ite
    | with_reducible apply stable_ite_snd
    | exact fun _ => rfl
    | with_reducible apply hP.updGroup
    | with_reducible apply hP.updEntry
    | with_reducible apply hP.raiseError
    | with_reducible apply hP.setMeta
    | with_reducible apply hP.getGroup
    | with_reducible apply hP.getEntry
    | with_reducible apply hP.randomUuid
    | with_reducible apply hP.cipherProcess
    | with_reducible apply hP.setNullDeref
    | with_reducible apply hP.setXmlError
    | with_reducible apply hP.setHeaderHash
    | with_reducible apply hP.setBinaryPool
    | with_reducible apply hP.addDeletedObject
    | with_reducible apply readUuid_stable hP
    | refine snd_of_eq (by assumption) (readUuid_stable hP ?_)
    | with_reducible apply readBinary_stable hP
    | refine snd_of_eq (by assumption) (readBinary_stable hP ?_)
    | refine snd_of_eq (by assumption) (hP.getGroup _ _ ?_)
    | refine snd_of_eq (by assumption) (hP.getEntry _ _ ?_)
    | refine snd_of_eq (by assumption) (hP.cipherProcess _ _ _ _ ?_)
    | refine snd_of_eq (by assumption) (hP.randomUuid _ _ ?_)
    | dsimp only
    | split)

theorem parseIcon_stable {P : Reader → Prop} (hP : StableLeaf P) {env : Env} {x : XmlElement} {st : Reader}
    (h : P st) : P (parseIcon env x st) := by
  unfold parseIcon
  repeat' (first
    | assumption
    | with_reducible apply stable_ite
    | with_reducible apply stable_ite_snd
    | exact forEachChild_stable (fun _ _ hs => parseIconChild_stable hP hs) h
    | exact snd_of_eq (by assumption) (forEachChild_stable (fun _ _ hs => parseIconChild_stable hP hs) h)
    | exact fun _ => rfl
    | with_reducible apply hP.updGroup
    | with_reducible apply hP.updEntry
    | with_reducible apply hP.raiseError
    | with_reducible apply hP.setMeta
    | with_reducible apply hP.getGroup
    | with_reducible apply hP.getEntry
    | with_reducible apply hP.randomUuid
    | with_reducible apply hP.cipherProcess
    | with_reducible apply hP.setNullDeref
    | with_reducible apply hP.setXmlError
    | with_reducible apply hP.setHeaderHash
    | with_reducible apply hP.setBinaryPool
    | with_reducible apply hP.addDeletedObject
    | refine snd_of_eq (by assumption) (hP.getGroup _ _ ?_)
    | refine snd_of_eq (by assumption) (hP.getEntry _ _ ?_)
    | refine snd_of_eq (by assumption) (hP.cipherProcess _ _ _ _ ?_)
    | refine snd_of_eq (by assumption) (hP.randomUuid _ _ ?_)
    | dsimp only
    | split)

theorem parseCustomIconsChild_stable {P : Reader → Prop} (hP : StableLeaf P) {env : Env} {c : XmlElement} {s : Unit × Reader}
    (h : P s.2) : P ((parseCustomIconsChild env c s).2) := by
  unfold parseCustomIconsChild
  repeat' (first
    | assumption
    | with_reducible apply stable_ite
    | with_reducible apply stable_ite_snd
    | exact fun _ => rfl
    | with_reducible apply hP.updGroup
    | with_reducible apply hP.updEntry
    | with_reducible apply hP.raiseError
    | with_reducible apply hP.setMeta
    | with_reducible apply hP.getGroup
    | with_reducible apply hP.getEntry
    | with_reducible apply hP.randomUuid
    | with_reducible apply hP.cipherProcess
    | with_reducible apply hP.setNullDeref
    | with_reducible apply hP.setXmlError
    | with_reducible apply hP.setHeaderHash
    | with_reducible apply hP.setBinaryPool
    | with_reducible apply hP.addDeletedObject
    | with_reducible apply parseIcon_stable hP
    | refine snd_of_eq (by assumption) (parseIcon_stable hP ?_)
    | refine snd_of_eq (by assumption) (hP.getGroup _ _ ?_)
    | refine snd_of_eq (by assumption) (hP.getEntry _ _ ?_)
    | refine snd_of_eq (by assumption) (hP.cipherProcess _ _ _ _ ?_)
    | refine snd_of_eq (by assumption) (hP.randomUuid _ _ ?_)
    | dsimp only
    | split)

theorem parseCustomIcons_stable {P : Reader → Prop} (hP : StableLeaf P) {env : Env} {x : XmlElement} {st : Reader}
    (h : P st) : P (parseCustomIcons env x st) := by
  unfold parseCustomIcons
  repeat' (first
    | assumption
    | with_reducible apply stable_ite
    | with_reducible apply stable_ite_snd
    | exact forEachChild_stable (fun _ _ hs => parseCustomIconsChild_stable hP hs) h
    | exact snd_of_eq (by assumption) (forEachChild_stable (fun _ _ hs => parseCustomIconsChild_stable hP hs) h)
    | exact fun _ => rfl
    | with_reducible apply hP.updGroup
    | with_reducible apply hP.updEntry
    | with_reducible apply hP.raiseError
    | with_reducible apply hP.setMeta
    | with_reducible apply hP.getGroup
    | with_reducible apply hP.getEntry
    | with_reducible apply hP.randomUuid
    | with_reducible apply hP.cipherProcess
    | with_reducible apply hP.setNullDeref
    | with_reducible apply hP.setXmlError
    | with_reducible apply hP.setHeaderHash
    | with_reducible apply hP.setBinaryPool
    | with_reducible apply hP.addDeletedObject
    | refine snd_of_eq (by assumption) (hP.getGroup _ _ ?_)
    | refine snd_of_eq (by assumption) (hP.getEntry _ _ ?_)
    | refine snd_of_eq (by assumption) (hP.cipherProcess _ _ _ _ ?_)
    | refine snd_of_eq (by assumption) (hP.randomUuid _ _ ?_)
    | dsimp only
    | split)

theorem parseBinariesChild_stable {P : Reader → Prop} (hP : StableLeaf P) {env : Env} {c : XmlElement} {s : Unit × Reader}
    (h : P s.2) : P ((parseBinariesChild env c s).2) := by
  unfold parseBinariesChild
  repeat' (first
    | assumption
    | with_reducible apply stable_ite
    | with_reducible apply stable_ite_snd
    | exact fun _ => rfl
    | with_reducible apply hP.updGroup
    | with_reducible apply hP.updEntry
    | with_reducible apply hP.raiseError
    | with_reducible apply hP.setMeta
    | with_reducible apply hP.getGroup
    | with_reducible apply hP.getEntry
    | with_reducible apply hP.randomUuid
    | with_reducible apply hP.cipherProcess
    | with_reducible apply hP.setNullDeref
    | with_reducible apply hP.setXmlError
    | with_reducible apply hP.setHeaderHash
    | with_reducible apply hP.setBinaryPool
    | with_reducible apply hP.addDeletedObject
    | with_reducible apply readCompressedBinary_stable hP
    | refine snd_of_eq (by assumption) (readCompressedBinary_stable hP ?_)
    | with_reducible apply readBinary_stable hP
    | refine snd_of_eq (by assumption) (readBinary_stable hP ?_)
    | refine snd_of_eq (by assumption) (hP.getGroup _ _ ?_)
    | refine snd_of_eq (by assumption) (hP.getEntry _ _ ?_)
    | refine snd_of_eq (by assumption) (hP.cipherProcess _ _ _ _ ?_)
    | refine snd_of_eq (by assumption) (hP.randomUuid _ _ ?_)
    | dsimp only
    | split)

theorem parseBinaries_stable {P : Reader → Prop} (hP : StableLeaf P) {env : Env} {x : XmlElement} {st : Reader}
    (h : P st) : P (parseBinaries env x st) := by
  unfold parseBinaries
  repeat' (first
    | assumption
    | with_reducible apply stable_ite
    | with_reducible apply stable_ite_snd
    | exact forEachChild_stable (fun _ _ hs => parseBinariesChild_stable hP hs) h
    | exact snd_of_eq (by assumption) (forEachChild_stable (fun _ _ hs => parseBinariesChild_stable hP hs) h)
    | exact fun _ => rfl
    | with_reducible apply hP.updGroup
    | with_reducible apply hP.updEntry
    | with_reducible apply hP.raiseError
    | with_reducible apply hP.setMeta
    | with_reducible apply hP.getGroup
    | with_reducible apply hP.getEntry
    | with_reducible apply hP.randomUuid
    | with_reducible apply hP.cipherProcess
    | with_reducible apply hP.setNullDeref
    | with_reducible apply hP.setXmlError
    | with_reducible apply hP.setHeaderHash
    | with_reducible apply hP.setBinaryPool
    | with_reducible apply hP.addDeletedObject
    | refine snd_of_eq (by assumption) (hP.getGroup _ _ ?_)
    | refine snd_of_eq (by assumption) (hP.getEntry _ _ ?_)
    | refine snd_of_eq (by assumption) (hP.cipherProcess _ _ _ _ ?_)
    | refine snd_of_eq (by assumption) (hP.randomUuid _ _ ?_)
    | dsimp only
    | split)

theorem parseCustomDataItemChild_stable {P : Reader → Prop} (hP : StableLeaf P) {c : XmlElement} {s : ItemLocals × Reader}
    (h : P s.2) : P ((parseCustomDataItemChild c s).2) := by
  unfold parseCustomDataItemChild
  repeat' (first
    | assumption
    | with_reducible apply stable_ite
    | with_reducible apply stable_ite_snd
    | exact fun _ => rfl
    | with_reducible apply hP.updGroup
    | with_reducible apply hP.updEntry
    | with_reducible apply hP.raiseError
    | with_reducible apply hP.setMeta
    | with_reducible apply hP.getGroup
    | with_reducible apply hP.getEntry
    | with_reducible apply hP.randomUuid
    | with_reducible apply hP.cipherProcess
    | with_reducible apply hP.setNullDeref
    | with_reducible apply hP.setXmlError
    | with_reducible apply hP.setHeaderHash
    | with_reducible apply hP.setBinaryPool
    | with_reducible apply hP.addDeletedObject
    | with_reducible apply readString_stable hP
    | refine snd_of_eq (by assumption) (readString_stable hP ?_)
    | refine snd_of_eq (by assumption) (hP.getGroup _ _ ?_)
    | refine snd_of_eq (by assumption) (hP.getEntry _ _ ?_)
    | refine snd_of_eq (by assumption) (hP.cipherProcess _ _ _ _ ?_)
    | refine snd_of_eq (by assumption) (hP.randomUuid _ _ ?_)
    | dsimp only
    | split)

theorem parseCustomDataItem_stable {P : Reader → Prop} (hP : StableLeaf P) {x : XmlElement} {st : Reader}
    (h : P st) : P (parseCustomDataItem x st) := by
  unfold parseCustomDataItem
  repeat' (first
    | assumption
    | with_reducible apply stable_ite
    | with_reducible apply stable_ite_snd
    | exact forEachChild_stable (fun _ _ hs => parseCustomDataItemChild_stable hP hs) h
    | exact snd_of_eq (by assumption) (forEachChild_stable (fun _ _ hs => parseCustomDataItemChild_stable hP hs) h)
    | exact fun _ => rfl
    | with_reducible apply hP.updGroup
    | with_reducible apply hP.updEntry
    | with_reducible apply hP.raiseError
    | with_reducible apply hP.setMeta
    | with_reducible apply hP.getGroup
    | with_reducible apply hP.getEntry
    | with_reducible apply hP.randomUuid
    | with_reducible apply hP.cipherProcess
    | with_reducible apply hP.setNullDeref
    | with_reducible apply hP.setXmlError
    | with_reducible apply hP.setHeaderHash
    | with_reducible apply hP.setBinaryPool
    | with_reducible apply hP.addDeletedObject
    | refine snd_of_eq (by assumption) (hP.getGroup _ _ ?_)
    | refine snd_of_eq (by assumption) (hP.getEntry _ _ ?_)
    | refine snd_of_eq (by assumption) (hP.cipherProcess _ _ _ _ ?_)
    | refine snd_of_eq (by assumption) (hP.randomUuid _ _ ?_)
    | dsimp only
    | split)

theorem parseCustomDataChild_stable {P : Reader → Prop} (hP : StableLeaf P) {c : XmlElement} {s : Unit × Reader}
    (h : P s.2) : P ((parseCustomDataChild c s).2) := by
  unfold parseCustomDataChild
  repeat' (first
    | assumption
    | with_reducible apply stable_ite
    | with_reducible apply stable_ite_snd
    | exact fun _ => rfl
    | with_reducible apply hP.updGroup
    | with_reducible apply hP.updEntry
    | with_reducible apply hP.raiseError
    | with_reducible apply hP.setMeta
    | with_reducible apply hP.getGroup
    | with_reducible apply hP.getEntry
    | with_reducible apply hP.randomUuid
    | with_reducible apply hP.cipherProcess
    | with_reducible apply hP.setNullDeref
    | with_reducible apply hP.setXmlError
    | with_reducible apply hP.setHeaderHash
    | with_reducible apply hP.setBinaryPool
    | with_reducible apply hP.addDeletedObject
    | with_reducible apply parseCustomDataItem_stable hP
    | refine snd_of_eq (by assumption) (parseCustomDataItem_stable hP ?_)
    | refine snd_of_eq (by assumption) (hP.getGroup _ _ ?_)
    | refine snd_of_eq (by assumption) (hP.getEntry _ _ ?_)
    | refine snd_of_eq (by assumption) (hP.cipherProcess _ _ _ _ ?_)
    | refine snd_of_eq (by assumption) (hP.randomUuid _ _ ?_)
    | dsimp only
    | split)

theorem parseCustomData_stable {P : Reader → Prop} (hP : StableLeaf P) {x : XmlElement} {st : Reader}
    (h : P st) : P (parseCustomData x st) := by
  unfold parseCustomData
  repeat' (first
    | assumption
    | with_reducible apply stable_ite
    | with_reducible apply stable_ite_snd
    | exact forEachChild_stable (fun _ _ hs => parseCustomDataChild_stable hP hs) h
    | exact snd_of_eq (by assumption) (forEachChild_stable (fun _ _ hs => parseCustomDataChild_stable hP hs) h)
    | exact fun _ => rfl
    | with_reducible apply hP.updGroup
    | with_reducible apply hP.updEntry
    | with_reducible apply hP.raiseError
    | with_reducible apply hP.setMeta
    | with_reducible apply hP.getGroup
    | with_reducible apply hP.getEntry
    | with_reducible apply hP.randomUuid
    | with_reducible apply hP.cipherProcess
    | with_reducible apply hP.setNullDeref
    | with_reducible apply hP.setXmlError
    | with_reducible apply hP.setHeaderHash
    | with_reducible apply hP.setBinaryPool
    | with_reducible apply hP.addDeletedObject
    | refine snd_of_eq (by assumption) (hP.getGroup _ _ ?_)
    | refine snd_of_eq (by assumption) (hP.getEntry _ _ ?_)
    | refine snd_of_eq (by assumption) (hP.cipherProcess _ _ _ _ ?_)
    | refine snd_of_eq (by assumption) (hP.randomUuid _ _ ?_)
    | dsimp only
    | split)

theorem parseMetaChild_stable {P : Reader → Prop} (hP : StableLeaf P) {env : Env} {c : XmlElement} {st : Reader}
    (h : P st) : P (parseMetaChild env c st) := by
  unfold parseMetaChild
  repeat' (first
    | assumption
    | with_reducible apply stable_ite
    | with_reducible apply stable_ite_snd
    | exact fun _ => rfl
    | with_reducible apply hP.updGroup
    | with_reducible apply hP.updEntry
    | with_reducible apply hP.raiseError
    | with_reducible apply hP.setMeta
    | with_reducible apply hP.getGroup
    | with_reducible apply hP.getEntry
    | with_reducible apply hP.randomUuid
    | with_reducible apply hP.cipherProcess
    | with_reducible apply hP.setNullDeref
    | with_reducible apply hP.setXmlError
    | with_reducible apply hP.setHeaderHash
    | with_reducible apply hP.setBinaryPool
    | with_reducible apply hP.addDeletedObject
    | with_reducible apply readString_stable hP
    | refine snd_of_eq (by assumption) (readString_stable hP ?_)
    | with_reducible apply readBinary_stable hP
    | refine snd_of_eq (by assumption) (readBinary_stable hP ?_)
    | with_reducible apply readDateTime_stable hP
    | refine snd_of_eq (by assumption) (readDateTime_stable hP ?_)
    | with_reducible apply readNumber_stable hP
    | refine snd_of_eq (by assumption) (readNumber_stable hP ?_)
    | with_reducible apply readColor_stable hP
    | refine snd_of_eq (by assumption) (readColor_stable hP ?_)
    | with_reducible apply readBool_stable hP
    | refine snd_of_eq (by assumption) (readBool_stable hP ?_)
    | with_reducible apply readUuid_stable hP
    | refine snd_of_eq (by assumption) (readUuid_stable hP ?_)
    | with_reducible apply parseMemoryProtection_stable hP
    | refine snd_of_eq (by assumption) (parseMemoryProtection_stable hP ?_)
    | with_reducible apply parseCustomIcons_stable hP
    | refine snd_of_eq (by assumption) (parseCustomIcons_stable hP ?_)
    | with_reducible apply parseBinaries_stable hP
    | refine snd_of_eq (by assumption) (parseBinaries_stable hP ?_)
    | with_reducible apply parseCustomData_stable hP
    | refine snd_of_eq (by assumption) (parseCustomData_stable hP ?_)
    | refine snd_of_eq (by assumption) (hP.getGroup _ _ ?_)
    | refine snd_of_eq (by assumption) (hP.getEntry _ _ ?_)
    | refine snd_of_eq (by assumption) (hP.cipherProcess _ _ _ _ ?_)
    | refine snd_of_eq (by assumption) (hP.randomUuid _ _ ?_)
    | dsimp only
    | split)

theorem parseMeta_stable {P : Reader → Prop} (hP : StableLeaf P) {env : Env} {x : XmlElement}
    {st : Reader} (h : P st) : P (parseMeta env x st) := by
  unfold parseMeta
  exact forEachChild_stable (fun _ _ hs => parseMetaChild_stable hP hs) h

theorem parseTimesChild_stable {P : Reader → Prop} (hP : StableLeaf P) {env : Env} {c : XmlElement} {s : TimeInfo × Reader}
    (h : P s.2) : P ((parseTimesChild env c s).2) := by
  unfold parseTimesChild
  repeat' (first
    | assumption
    | with_reducible apply stable_ite
    | with_reducible apply stable_ite_snd
    | exact fun _ => rfl
    | with_reducible apply hP.updGroup
    | with_reducible apply hP.updEntry
    | with_reducible apply hP.raiseError
    | with_reducible apply hP.setMeta
    | with_reducible apply hP.getGroup
    | with_reducible apply hP.getEntry
    | with_reducible apply hP.randomUuid
    | with_reducible apply hP.cipherProcess
    | with_reducible apply hP.setNullDeref
    | with_reducible apply hP.setXmlError
    | with_reducible apply hP.setHeaderHash
    | with_reducible apply hP.setBinaryPool
    | with_reducible apply hP.addDeletedObject
    | with_reducible apply readDateTime_stable hP
    | refine snd_of_eq (by assumption) (readDateTime_stable hP ?_)
    | with_reducible apply readBool_stable hP
    | refine snd_of_eq (by assumption) (readBool_stable hP ?_)
    | with_reducible apply readNumber_stable hP
    | refine snd_of_eq (by assumption) (readNumber_stable hP ?_)
    | refine snd_of_eq (by assumption) (hP.getGroup _ _ ?_)
    | refine snd_of_eq (by assumption) (hP.getEntry _ _ ?_)
    | refine snd_of_eq (by assumption) (hP.cipherProcess _ _ _ _ ?_)
    | refine snd_of_eq (by assumption) (hP.randomUuid _ _ ?_)
    | dsimp only
    | split)

theorem parseTimes_stable {P : Reader → Prop} (hP : StableLeaf P) {env : Env} {x : XmlElement} {st : Reader}
    (h : P st) : P ((parseTimes env x st).2) := by
  unfold parseTimes
  repeat' (first
    | assumption
    | with_reducible apply stable_ite
    | with_reducible apply stable_ite_snd
    | exact forEachChild_stable (fun _ _ hs => parseTimesChild_stable hP hs) h
    | exact snd_of_eq (by assumption) (forEachChild_stable (fun _ _ hs => parseTimesChild_stable hP hs) h)
    | exact fun _ => rfl
    | with_reducible apply hP.updGroup
    | with_reducible apply hP.updEntry
    | with_reducible apply hP.raiseError
    | with_reducible apply hP.setMeta
    | with_reducible apply hP.getGroup
    | with_reducible apply hP.getEntry
    | with_reducible apply hP.randomUuid
    | with_reducible apply hP.cipherProcess
    | with_reducible apply hP.setNullDeref
    | with_reducible apply hP.setXmlError
    | with_reducible apply hP.setHeaderHash
    | with_reducible apply hP.setBinaryPool
    | with_reducible apply hP.addDeletedObject
    | refine snd_of_eq (by assumption) (hP.getGroup _ _ ?_)
    | refine snd_of_eq (by assumption) (hP.getEntry _ _ ?_)
    | refine snd_of_eq (by assumption) (hP.cipherProcess _ _ _ _ ?_)
    | refine snd_of_eq (by assumption) (hP.randomUuid _ _ ?_)
    | dsimp only
    | split)

theorem parseDeletedObjectChild_stable {P : Reader → Prop} (hP : StableLeaf P) {env : Env} {c : XmlElement} {s : DeletedObject × Reader}
    (h : P s.2) : P ((parseDeletedObjectChild env c s).2) := by
  unfold parseDeletedObjectChild
  repeat' (first
    | assumption
    | with_reducible apply stable_ite
    | with_reducible apply stable_ite_snd
    | exact fun _ => rfl
    | with_reducible apply hP.updGroup
    | with_reducible apply hP.updEntry
    | with_reducible apply hP.raiseError
    | with_reducible apply hP.setMeta
    | with_reducible apply hP.getGroup
    | with_reducible apply hP.getEntry
    | with_reducible apply hP.randomUuid
    | with_reducible apply hP.cipherProcess
    | with_reducible apply hP.setNullDeref
    | with_reducible apply hP.setXmlError
    | with_reducible apply hP.setHeaderHash
    | with_reducible apply hP.setBinaryPool
    | with_reducible apply hP.addDeletedObject
    | with_reducible apply readUuid_stable hP
    | refine snd_of_eq (by assumption) (readUuid_stable hP ?_)
    | with_reducible apply readDateTime_stable hP
    | refine snd_of_eq (by assumption) (readDateTime_stable hP ?_)
    | refine snd_of_eq (by assumption) (hP.getGroup _ _ ?_)
    | refine snd_of_eq (by assumption) (hP.getEntry _ _ ?_)
    | refine snd_of_eq (by assumption) (hP.cipherProcess _ _ _ _ ?_)
    | refine snd_of_eq (by assumption) (hP.randomUuid _ _ ?_)
    | dsimp only
    | split)

theorem parseDeletedObject_stable {P : Reader → Prop} (hP : StableLeaf P) {env : Env} {x : XmlElement} {st : Reader}
    (h : P st) : P (parseDeletedObject env x st) := by
  unfold parseDeletedObject
  repeat' (first
    | assumption
    | with_reducible apply stable_ite
    | with_reducible apply stable_ite_snd
    | exact forEachChild_stable (fun _ _ hs => parseDeletedObjectChild_stable hP hs) h
    | exact snd_of_eq (by assumption) (forEachChild_stable (fun _ _ hs => parseDeletedObjectChild_stable hP hs) h)
    | exact fun _ => rfl
    | with_reducible apply hP.updGroup
    | with_reducible apply hP.updEntry
    | with_reducible apply hP.raiseError
    | with_reducible apply hP.setMeta
    | with_reducible apply hP.getGroup
    | with_reducible apply hP.getEntry
    | with_reducible apply hP.randomUuid
    | with_reducible apply hP.cipherProcess
    | with_reducible apply hP.setNullDeref
    | with_reducible apply hP.setXmlError
    | with_reducible apply hP.setHeaderHash
    | with_reducible apply hP.setBinaryPool
    | with_reducible apply hP.addDeletedObject
    | refine snd_of_eq (by assumption) (hP.getGroup _ _ ?_)
    | refine snd_of_eq (by assumption) (hP.getEntry _ _ ?_)
    | refine snd_of_eq (by assumption) (hP.cipherProcess _ _ _ _ ?_)
    | refine snd_of_eq (by assumption) (hP.randomUuid _ _ ?_)
    | dsimp only
    | split)

theorem parseDeletedObjectsChild_stable {P : Reader → Prop} (hP : StableLeaf P) {env : Env} {c : XmlElement} {s : Unit × Reader}
    (h : P s.2) : P ((parseDeletedObjectsChild env c s).2) := by
  unfold parseDeletedObjectsChild
  repeat' (first
    | assumption
    | with_reducible apply stable_ite
    | with_reducible apply stable_ite_snd
    | exact fun _ => rfl
    | with_reducible apply hP.updGroup
    | with_reducible apply hP.updEntry
    | with_reducible apply hP.raiseError
    | with_reducible apply hP.setMeta
    | with_reducible apply hP.getGroup
    | with_reducible apply hP.getEntry
    | with_reducible apply hP.randomUuid
    | with_reducible apply hP.cipherProcess
    | with_reducible apply hP.setNullDeref
    | with_reducible apply hP.setXmlError
    | with_reducible apply hP.setHeaderHash
    | with_reducible apply hP.setBinaryPool
    | with_reducible apply hP.addDeletedObject
    | with_reducible apply parseDeletedObject_stable hP
    | refine snd_of_eq (by assumption) (parseDeletedObject_stable hP ?_)
    | refine snd_of_eq (by assumption) (hP.getGroup _ _ ?_)
    | refine snd_of_eq (by assumption) (hP.getEntry _ _ ?_)
    | refine snd_of_eq (by assumption) (hP.cipherProcess _ _ _ _ ?_)
    | refine snd_of_eq (by assumption) (hP.randomUuid _ _ ?_)
    | dsimp only
    | split)

theorem parseDeletedObjects_stable {P : Reader → Prop} (hP : StableLeaf P) {env : Env} {x : XmlElement} {st : Reader}
    (h : P st) : P (parseDeletedObjects env x st) := by
  unfold parseDeletedObjects
  repeat' (first
    | assumption
    | with_reducible apply stable_ite
    | with_reducible apply stable_ite_snd
    | exact forEachChild_stable (fun _ _ hs => parseDeletedObjectsChild_stable hP hs) h
    | exact snd_of_eq (by assumption) (forEachChild_stable (fun _ _ hs => parseDeletedObjectsChild_stable hP hs) h)
    | exact fun _ => rfl
    | with_reducible apply hP.updGroup
    | with_reducible apply hP.updEntry
    | with_reducible apply hP.raiseError
    | with_reducible apply hP.setMeta
    | with_reducible apply hP.getGroup
    | with_reducible apply hP.getEntry
    | with_reducible apply hP.randomUuid
    | with_reducible apply hP.cipherProcess
    | with_reducible apply hP.setNullDeref
    | with_reducible apply hP.setXmlError
    | with_reducible apply hP.setHeaderHash
    | with_reducible apply hP.setBinaryPool
    | with_reducible apply hP.addDeletedObject
    | refine snd_of_eq (by assumption) (hP.getGroup _ _ ?_)
    | refine snd_of_eq (by assumption) (hP.getEntry _ _ ?_)
    | refine snd_of_eq (by assumption) (hP.cipherProcess _ _ _ _ ?_)
    | refine snd_of_eq (by assumption) (hP.randomUuid _ _ ?_)
    | dsimp only
    | split)

theorem parseEntryStringValue_stable {P : Reader → Prop} (hP : StableLeaf P) {env : Env} {c : XmlElement} {s : StringLocals × Reader}
    (h : P s.2) : P ((parseEntryStringValue env c s).2) := by
  unfold parseEntryStringValue
  repeat' (first
    | assumption
    | with_reducible apply stable_ite
    | with_reducible apply stable_ite_snd
    | exact fun _ => rfl
    | with_reducible apply hP.updGroup
    | with_reducible apply hP.updEntry
    | with_reducible apply hP.raiseError
    | with_reducible apply hP.setMeta
    | with_reducible apply hP.getGroup
    | with_reducible apply hP.getEntry
    | with_reducible apply hP.randomUuid
    | with_reducible apply hP.cipherProcess
    | with_reducible apply hP.setNullDeref
    | with_reducible apply hP.setXmlError
    | with_reducible apply hP.setHeaderHash
    | with_reducible apply hP.setBinaryPool
    | with_reducible apply hP.addDeletedObject
    | with_reducible apply readString_stable hP
    | refine snd_of_eq (by assumption) (readString_stable hP ?_)
    | refine snd_of_eq (by assumption) (hP.getGroup _ _ ?_)
    | refine snd_of_eq (by assumption) (hP.getEntry _ _ ?_)
    | refine snd_of_eq (by assumption) (hP.cipherProcess _ _ _ _ ?_)
    | refine snd_of_eq (by assumption) (hP.randomUuid _ _ ?_)
    | dsimp only
    | split)

theorem parseEntryStringChild_stable {P : Reader → Prop} (hP : StableLeaf P) {env : Env} {c : XmlElement} {s : StringLocals × Reader}
    (h : P s.2) : P ((parseEntryStringChild env c s).2) := by
  unfold parseEntryStringChild
  repeat' (first
    | assumption
    | with_reducible apply stable_ite
    | with_reducible apply stable_ite_snd
    | exact fun _ => rfl
    | with_reducible apply hP.updGroup
    | with_reducible apply hP.updEntry
    | with_reducible apply hP.raiseError
    | with_reducible apply hP.setMeta
    | with_reducible apply hP.getGroup
    | with_reducible apply hP.getEntry
    | with_reducible apply hP.randomUuid
    | with_reducible apply hP.cipherProcess
    | with_reducible apply hP.setNullDeref
    | with_reducible apply hP.setXmlError
    | with_reducible apply hP.setHeaderHash
    | with_reducible apply hP.setBinaryPool
    | with_reducible apply hP.addDeletedObject
    | with_reducible apply readString_stable hP
    | refine snd_of_eq (by assumption) (readString_stable hP ?_)
    | with_reducible apply parseEntryStringValue_stable hP
    | refine snd_of_eq (by assumption) (parseEntryStringValue_stable hP ?_)
    | refine snd_of_eq (by assumption) (hP.getGroup _ _ ?_)
    | refine snd_of_eq (by assumption) (hP.getEntry _ _ ?_)
    | refine snd_of_eq (by assumption) (hP.cipherProcess _ _ _ _ ?_)
    | refine snd_of_eq (by assumption) (hP.randomUuid _ _ ?_)
    | dsimp only
    | split)

theorem parseEntryString_stable {P : Reader → Prop} (hP : StableLeaf P) {env : Env} {entry : Nat} {x : XmlElement} {st : Reader}
    (h : P st) : P (parseEntryString env entry x st) := by
  unfold parseEntryString
  repeat' (first
    | assumption
    | with_reducible apply stable_ite
    | with_reducible apply stable_ite_snd
    | exact forEachChild_stable (fun _ _ hs => parseEntryStringChild_stable hP hs) h
    | exact snd_of_eq (by assumption) (forEachChild_stable (fun _ _ hs => parseEntryStringChild_stable hP hs) h)
    | exact fun _ => rfl
    | with_reducible apply hP.updGroup
    | with_reducible apply hP.updEntry
    | with_reducible apply hP.raiseError
    | with_reducible apply hP.setMeta
    | with_reducible apply hP.getGroup
    | with_reducible apply hP.getEntry
    | with_reducible apply hP.randomUuid
    | with_reducible apply hP.cipherProcess
    | with_reducible apply hP.setNullDeref
    | with_reducible apply hP.setXmlError
    | with_reducible apply hP.setHeaderHash
    | with_reducible apply hP.setBinaryPool
    | with_reducible apply hP.addDeletedObject
    | refine snd_of_eq (by assumption) (hP.getGroup _ _ ?_)
    | refine snd_of_eq (by assumption) (hP.getEntry _ _ ?_)
    | refine snd_of_eq (by assumption) (hP.cipherProcess _ _ _ _ ?_)
    | refine snd_of_eq (by assumption) (hP.randomUuid _ _ ?_)
    | dsimp only
    | split)

theorem parseEntryBinaryValue_stable {P : Reader → Prop} (hP : StableLeaf P) {env : Env} {c : XmlElement} {s : BinaryLocals × Reader}
    (h : P s.2) : P ((parseEntryBinaryValue env c s).2) := by
  unfold parseEntryBinaryValue
  repeat' (first
    | assumption
    | with_reducible apply stable_ite
    | with_reducible apply stable_ite_snd
    | exact fun _ => rfl
    | with_reducible apply hP.updGroup
    | with_reducible apply hP.updEntry
    | with_reducible apply hP.raiseError
    | with_reducible apply hP.setMeta
    | with_reducible apply hP.getGroup
    | with_reducible apply hP.getEntry
    | with_reducible apply hP.randomUuid
    | with_reducible apply hP.cipherProcess
    | with_reducible apply hP.setNullDeref
    | with_reducible apply hP.setXmlError
    | with_reducible apply hP.setHeaderHash
    | with_reducible apply hP.setBinaryPool
    | with_reducible apply hP.addDeletedObject
    | with_reducible apply readBinary_stable hP
    | refine snd_of_eq (by assumption) (readBinary_stable hP ?_)
    | refine snd_of_eq (by assumption) (hP.getGroup _ _ ?_)
    | refine snd_of_eq (by assumption) (hP.getEntry _ _ ?_)
    | refine snd_of_eq (by assumption) (hP.cipherProcess _ _ _ _ ?_)
    | refine snd_of_eq (by assumption) (hP.randomUuid _ _ ?_)
    | dsimp only
    | split)

theorem parseEntryBinaryChild_stable {P : Reader → Prop} (hP : StableLeaf P) {env : Env} {c : XmlElement} {s : BinaryLocals × Reader}
    (h : P s.2) : P ((parseEntryBinaryChild env c s).2) := by
  unfold parseEntryBinaryChild
  repeat' (first
    | assumption
    | with_reducible apply stable_ite
    | with_reducible apply stable_ite_snd
    | exact fun _ => rfl
    | with_reducible apply hP.updGroup
    | with_reducible apply hP.updEntry
    | with_reducible apply hP.raiseError
    | with_reducible apply hP.setMeta
    | with_reducible apply hP.getGroup
    | with_reducible apply hP.getEntry
    | with_reducible apply hP.randomUuid
    | with_reducible apply hP.cipherProcess
    | with_reducible apply hP.setNullDeref
    | with_reducible apply hP.setXmlError
    | with_reducible apply hP.setHeaderHash
    | with_reducible apply hP.setBinaryPool
    | with_reducible apply hP.addDeletedObject
    | with_reducible apply readString_stable hP
    | refine snd_of_eq (by assumption) (readString_stable hP ?_)
    | with_reducible apply parseEntryBinaryValue_stable hP
    | refine snd_of_eq (by assumption) (parseEntryBinaryValue_stable hP ?_)
    | refine snd_of_eq (by assumption) (hP.getGroup _ _ ?_)
    | refine snd_of_eq (by assumption) (hP.getEntry _ _ ?_)
    | refine snd_of_eq (by assumption) (hP.cipherProcess _ _ _ _ ?_)
    | refine snd_of_eq (by assumption) (hP.randomUuid _ _ ?_)
    | dsimp only
    | split)

theorem parseEntryBinary_stable {P : Reader → Prop} (hP : StableLeaf P) {env : Env} {entry : Nat} {x : XmlElement} {st : Reader}
    (h : P st) : P ((parseEntryBinary env entry x st).2) := by
  unfold parseEntryBinary
  repeat' (first
    | assumption
    | with_reducible apply stable_ite
    | with_reducible apply stable_ite_snd
    | exact forEachChild_stable (fun _ _ hs => parseEntryBinaryChild_stable hP hs) h
    | exact snd_of_eq (by assumption) (forEachChild_stable (fun _ _ hs => parseEntryBinaryChild_stable hP hs) h)
    | exact fun _ => rfl
    | with_reducible apply hP.updGroup
    | with_reducible apply hP.updEntry
    | with_reducible apply hP.raiseError
    | with_reducible apply hP.setMeta
    | with_reducible apply hP.getGroup
    | with_reducible apply hP.getEntry
    | with_reducible apply hP.randomUuid
    | with_reducible apply hP.cipherProcess
    | with_reducible apply hP.setNullDeref
    | with_reducible apply hP.setXmlError
    | with_reducible apply hP.setHeaderHash
    | with_reducible apply hP.setBinaryPool
    | with_reducible apply hP.addDeletedObject
    | refine snd_of_eq (by assumption) (hP.getGroup _ _ ?_)
    | refine snd_of_eq (by assumption) (hP.getEntry _ _ ?_)
    | refine snd_of_eq (by assumption) (hP.cipherProcess _ _ _ _ ?_)
    | refine snd_of_eq (by assumption) (hP.randomUuid _ _ ?_)
    | dsimp only
    | split)

theorem parseAutoTypeAssocChild_stable {P : Reader → Prop} (hP : StableLeaf P) {c : XmlElement} {s : AssocLocals × Reader}
    (h : P s.2) : P ((parseAutoTypeAssocChild c s).2) := by
  unfold parseAutoTypeAssocChild
  repeat' (first
    | assumption
    | with_reducible apply stable_ite
    | with_reducible apply stable_ite_snd
    | exact fun _ => rfl
    | with_reducible apply hP.updGroup
    | with_reducible apply hP.updEntry
    | with_reducible apply hP.raiseError
    | with_reducible apply hP.setMeta
    | with_reducible apply hP.getGroup
    | with_reducible apply hP.getEntry
    | with_reducible apply hP.randomUuid
    | with_reducible apply hP.cipherProcess
    | with_reducible apply hP.setNullDeref
    | with_reducible apply hP.setXmlError
    | with_reducible apply hP.setHeaderHash
    | with_reducible apply hP.setBinaryPool
    | with_reducible apply hP.addDeletedObject
    | with_reducible apply readString_stable hP
    | refine snd_of_eq (by assumption) (readString_stable hP ?_)
    | refine snd_of_eq (by assumption) (hP.getGroup _ _ ?_)
    | refine snd_of_eq (by assumption) (hP.getEntry _ _ ?_)
    | refine snd_of_eq (by assumption) (hP.cipherProcess _ _ _ _ ?_)
    | refine snd_of_eq (by assumption) (hP.randomUuid _ _ ?_)
    | dsimp only
    | split)

theorem parseAutoTypeAssoc_stable {P : Reader → Prop} (hP : StableLeaf P) {entry : Nat} {x : XmlElement} {st : Reader}
    (h : P st) : P (parseAutoTypeAssoc entry x st) := by
  unfold parseAutoTypeAssoc
  repeat' (first
    | assumption
    | with_reducible apply stable_ite
    | with_reducible apply stable_ite_snd
    | exact forEachChild_stable (fun _ _ hs => parseAutoTypeAssocChild_stable hP hs) h
    | exact snd_of_eq (by assumption) (forEachChild_stable (fun _ _ hs => parseAutoTypeAssocChild_stable hP hs) h)
    | exact fun _ => rfl
    | with_reducible apply hP.updGroup
    | with_reducible apply hP.updEntry
    | with_reducible apply hP.raiseError
    | with_reducible apply hP.setMeta
    | with_reducible apply hP.getGroup
    | with_reducible apply hP.getEntry
    | with_reducible apply hP.randomUuid
    | with_reducible apply hP.cipherProcess
    | with_reducible apply hP.setNullDeref
    | with_reducible apply hP.setXmlError
    | with_reducible apply hP.setHeaderHash
    | with_reducible apply hP.setBinaryPool
    | with_reducible apply hP.addDeletedObject
    | refine snd_of_eq (by assumption) (hP.getGroup _ _ ?_)
    | refine snd_of_eq (by assumption) (hP.getEntry _ _ ?_)
    | refine snd_of_eq (by assumption) (hP.cipherProcess _ _ _ _ ?_)
    | refine snd_of_eq (by assumption) (hP.randomUuid _ _ ?_)
    | dsimp only
    | split)

theorem parseAutoTypeChild_stable {P : Reader → Prop} (hP : StableLeaf P) {env : Env} {entry : Nat} {c : XmlElement} {s : Unit × Reader}
    (h : P s.2) : P ((parseAutoTypeChild env entry c s).2) := by
  unfold parseAutoTypeChild
  repeat' (first
    | assumption
    | with_reducible apply stable_ite
    | with_reducible apply stable_ite_snd
    | exact fun _ => rfl
    | with_reducible apply hP.updGroup
    | with_reducible apply hP.updEntry
    | with_reducible apply hP.raiseError
    | with_reducible apply hP.setMeta
    | with_reducible apply hP.getGroup
    | with_reducible apply hP.getEntry
    | with_reducible apply hP.randomUuid
    | with_reducible apply hP.cipherProcess
    | with_reducible apply hP.setNullDeref
    | with_reducible apply hP.setXmlError
    | with_reducible apply hP.setHeaderHash
    | with_reducible apply hP.setBinaryPool
    | with_reducible apply hP.addDeletedObject
    | with_reducible apply readBool_stable hP
    | refine snd_of_eq (by assumption) (readBool_stable hP ?_)
    | with_reducible apply readNumber_stable hP
    | refine snd_of_eq (by assumption) (readNumber_stable hP ?_)
    | with_reducible apply readString_stable hP
    | refine snd_of_eq (by assumption) (readString_stable hP ?_)
    | with_reducible apply parseAutoTypeAssoc_stable hP
    | refine snd_of_eq (by assumption) (parseAutoTypeAssoc_stable hP ?_)
    | refine snd_of_eq (by assumption) (hP.getGroup _ _ ?_)
    | refine snd_of_eq (by assumption) (hP.getEntry _ _ ?_)
    | refine snd_of_eq (by assumption) (hP.cipherProcess _ _ _ _ ?_)
    | refine snd_of_eq (by assumption) (hP.randomUuid _ _ ?_)
    | dsimp only
    | split)

theorem parseAutoType_stable {P : Reader → Prop} (hP : StableLeaf P) {env : Env} {entry : Nat} {x : XmlElement} {st : Reader}
    (h : P st) : P (parseAutoType env entry x st) := by
  unfold parseAutoType
  repeat' (first
    | assumption
    | with_reducible apply stable_ite
    | with_reducible apply stable_ite_snd
    | exact forEachChild_stable (fun _ _ hs => parseAutoTypeChild_stable hP hs) h
    | exact snd_of_eq (by assumption) (forEachChild_stable (fun _ _ hs => parseAutoTypeChild_stable hP hs) h)
    | exact fun _ => rfl
    | with_reducible apply hP.updGroup
    | with_reducible apply hP.updEntry
    | with_reducible apply hP.raiseError
    | with_reducible apply hP.setMeta
    | with_reducible apply hP.getGroup
    | with_reducible apply hP.getEntry
    | with_reducible apply hP.randomUuid
    | with_reducible apply hP.cipherProcess
    | with_reducible apply hP.setNullDeref
    | with_reducible apply hP.setXmlError
    | with_reducible apply hP.setHeaderHash
    | with_reducible apply hP.setBinaryPool
    | with_reducible apply hP.addDeletedObject
    | refine snd_of_eq (by assumption) (hP.getGroup _ _ ?_)
    | refine snd_of_eq (by assumption) (hP.getEntry _ _ ?_)
    | refine snd_of_eq (by assumption) (hP.cipherProcess _ _ _ _ ?_)
    | refine snd_of_eq (by assumption) (hP.randomUuid _ _ ?_)
    | dsimp only
    | split)

theorem parseGroupField_stable {P : Reader → Prop} (hP : StableLeaf P) {env : Env} {group : Nat} {c : XmlElement} {st : Reader}
    (h : P st) : P (parseGroupField env group c st) := by
  unfold parseGroupField
  repeat' (first
    | assumption
    | with_reducible apply stable_ite
    | with_reducible apply stable_ite_snd
    | exact fun _ => rfl
    | with_reducible apply hP.updGroup
    | with_reducible apply hP.updEntry
    | with_reducible apply hP.raiseError
    | with_reducible apply hP.setMeta
    | with_reducible apply hP.getGroup
    | with_reducible apply hP.getEntry
    | with_reducible apply hP.randomUuid
    | with_reducible apply hP.cipherProcess
    | with_reducible apply hP.setNullDeref
    | with_reducible apply hP.setXmlError
    | with_reducible apply hP.setHeaderHash
    | with_reducible apply hP.setBinaryPool
    | with_reducible apply hP.addDeletedObject
    | with_reducible apply readUuid_stable hP
    | refine snd_of_eq (by assumption) (readUuid_stable hP ?_)
    | with_reducible apply readString_stable hP
    | refine snd_of_eq (by assumption) (readString_stable hP ?_)
    | with_reducible apply readNumber_stable hP
    | refine snd_of_eq (by assumption) (readNumber_stable hP ?_)
    | with_reducible apply parseTimes_stable hP
    | refine snd_of_eq (by assumption) (parseTimes_stable hP ?_)
    | with_reducible apply readBool_stable hP
    | refine snd_of_eq (by assumption) (readBool_stable hP ?_)
    | refine snd_of_eq (by assumption) (hP.getGroup _ _ ?_)
    | refine snd_of_eq (by assumption) (hP.getEntry _ _ ?_)
    | refine snd_of_eq (by assumption) (hP.cipherProcess _ _ _ _ ?_)
    | refine snd_of_eq (by assumption) (hP.randomUuid _ _ ?_)
    | dsimp only
    | split)

theorem parseEntryField_stable {P : Reader → Prop} (hP : StableLeaf P) {env : Env} {entry : Nat} {c : XmlElement} {s : List (String × String) × Reader}
    (h : P s.2) : P ((parseEntryField env entry c s).2) := by
  unfold parseEntryField
  repeat' (first
    | assumption
    | with_reducible apply stable_ite
    | with_reducible apply stable_ite_snd
    | exact fun _ => rfl
    | with_reducible apply hP.updGroup
    | with_reducible apply hP.updEntry
    | with_reducible apply hP.raiseError
    | with_reducible apply hP.setMeta
    | with_reducible apply hP.getGroup
    | with_reducible apply hP.getEntry
    | with_reducible apply hP.randomUuid
    | with_reducible apply hP.cipherProcess
    | with_reducible apply hP.setNullDeref
    | with_reducible apply hP.setXmlError
    | with_reducible apply hP.setHeaderHash
    | with_reducible apply hP.setBinaryPool
    | with_reducible apply hP.addDeletedObject
    | with_reducible apply readUuid_stable hP
    | refine snd_of_eq (by assumption) (readUuid_stable hP ?_)
    | with_reducible apply readString_stable hP
    | refine snd_of_eq (by assumption) (readString_stable hP ?_)
    | with_reducible apply readNumber_stable hP
    | refine snd_of_eq (by assumption) (readNumber_stable hP ?_)
    | with_reducible apply readColor_stable hP
    | refine snd_of_eq (by assumption) (readColor_stable hP ?_)
    | with_reducible apply parseTimes_stable hP
    | refine snd_of_eq (by assumption) (parseTimes_stable hP ?_)
    | with_reducible apply parseEntryString_stable hP
    | refine snd_of_eq (by assumption) (parseEntryString_stable hP ?_)
    | with_reducible apply parseEntryBinary_stable hP
    | refine snd_of_eq (by assumption) (parseEntryBinary_stable hP ?_)
    | with_reducible apply parseAutoType_stable hP
    | refine snd_of_eq (by assumption) (parseAutoType_stable hP ?_)
    | refine snd_of_eq (by assumption) (hP.getGroup _ _ ?_)
    | refine snd_of_eq (by assumption) (hP.getEntry _ _ ?_)
    | refine snd_of_eq (by assumption) (hP.cipherProcess _ _ _ _ ?_)
    | refine snd_of_eq (by assumption) (hP.randomUuid _ _ ?_)
    | dsimp only
    | split)

theorem ensureGroupUuid_stable {P : Reader → Prop} (hP : StableLeaf P) {env : Env} {group : Nat} {st : Reader}
    (h : P st) : P (ensureGroupUuid env group st) := by
  unfold ensureGroupUuid
  repeat' (first
    | assumption
    | with_reducible apply stable_ite
    | with_reducible apply stable_ite_snd
    | exact fun _ => rfl
    | with_reducible apply hP.updGroup
    | with_reducible apply hP.updEntry
    | with_reducible apply hP.raiseError
    | with_reducible apply hP.setMeta
    | with_reducible apply hP.getGroup
    | with_reducible apply hP.getEntry
    | with_reducible apply hP.randomUuid
    | with_reducible apply hP.cipherProcess
    | with_reducible apply hP.setNullDeref
    | with_reducible apply hP.setXmlError
    | with_reducible apply hP.setHeaderHash
    | with_reducible apply hP.setBinaryPool
    | with_reducible apply hP.addDeletedObject
    | refine snd_of_eq (by assumption) (hP.getGroup _ _ ?_)
    | refine snd_of_eq (by assumption) (hP.getEntry _ _ ?_)
    | refine snd_of_eq (by assumption) (hP.cipherProcess _ _ _ _ ?_)
    | refine snd_of_eq (by assumption) (hP.randomUuid _ _ ?_)
    | dsimp only
    | split)

theorem ensureEntryUuid_stable {P : Reader → Prop} (hP : StableLeaf P) {env : Env} {entry : Nat} {st : Reader}
    (h : P st) : P (ensureEntryUuid env entry st) := by
  unfold ensureEntryUuid
  repeat' (first
    | assumption
    | with_reducible apply stable_ite
    | with_reducible apply stable_ite_snd
    | exact fun _ => rfl
    | with_reducible apply hP.updGroup
    | with_reducible apply hP.updEntry
    | with_reducible apply hP.raiseError
    | with_reducible apply hP.setMeta
    | with_reducible apply hP.getGroup
    | with_reducible apply hP.getEntry
    | with_reducible apply hP.randomUuid
    | with_reducible apply hP.cipherProcess
    | with_reducible apply hP.setNullDeref
    | with_reducible apply hP.setXmlError
    | with_reducible apply hP.setHeaderHash
    | with_reducible apply hP.setBinaryPool
    | with_reducible apply hP.addDeletedObject
    | refine snd_of_eq (by assumption) (hP.getGroup _ _ ?_)
    | refine snd_of_eq (by assumption) (hP.getEntry _ _ ?_)
    | refine snd_of_eq (by assumption) (hP.cipherProcess _ _ _ _ ?_)
    | refine snd_of_eq (by assumption) (hP.randomUuid _ _ ?_)
    | dsimp only
    | split)

theorem addHistoryItems_stable {P : Reader → Prop} (hP : StableLeaf P) {entry : Nat}
    {items : List Nat} {st : Reader} (h : P st) : P (addHistoryItems entry items st) := by
  induction items generalizing st with
  | nil => exact h
  | cons x rest ih =>
    unfold addHistoryItems
    apply ih
    refine hP.updEntry _ _ _ (fun _ => rfl) ?_
    repeat' (first
      | assumption
      | exact fun _ => rfl
      | with_reducible apply stable_ite
      | with_reducible apply hP.raiseError
      | with_reducible apply hP.updEntry)

theorem Reader.endElement_stable {P : Reader → Prop} (hP : Stable P) {st : Reader}
    (h : P st) : P (st.endElement) := by
  unfold Reader.endElement
  repeat' (first
    | assumption
    | with_reducible apply stable_ite
    | with_reducible apply stable_ite_snd
    | exact fun _ => rfl
    | with_reducible apply hP.toStableLeaf.updGroup
    | with_reducible apply hP.toStableLeaf.updEntry
    | with_reducible apply hP.toStableLeaf.raiseError
    | with_reducible apply hP.toStableLeaf.setMeta
    | with_reducible apply hP.toStableLeaf.getGroup
    | with_reducible apply hP.toStableLeaf.getEntry
    | with_reducible apply hP.toStableLeaf.randomUuid
    | with_reducible apply hP.toStableLeaf.cipherProcess
    | with_reducible apply hP.toStableLeaf.setNullDeref
    | with_reducible apply hP.toStableLeaf.setXmlError
    | with_reducible apply hP.toStableLeaf.setHeaderHash
    | with_reducible apply hP.toStableLeaf.setBinaryPool
    | with_reducible apply hP.toStableLeaf.addDeletedObject
    | with_reducible apply hP.setPending
    | with_reducible apply hP.newGroup
    | with_reducible apply hP.newEntry
    | with_reducible apply hP.setParent
    | with_reducible apply hP.setGroup
    | with_reducible apply hP.setRootGroup
    | with_reducible apply hP.addBinaryRefs
    | refine snd_of_eq (by assumption) (hP.toStableLeaf.getGroup _ _ ?_)
    | refine snd_of_eq (by assumption) (hP.toStableLeaf.getEntry _ _ ?_)
    | refine snd_of_eq (by assumption) (hP.toStableLeaf.cipherProcess _ _ _ _ ?_)
    | refine snd_of_eq (by assumption) (hP.toStableLeaf.randomUuid _ _ ?_)
    | refine foldl_stable (fun _ _ hs => hP.setParent _ _ _ hs) ?_
    | refine foldl_stable (fun _ _ hs => hP.setGroup _ _ _ hs) ?_
    | refine snd_of_eq (by assumption) (hP.newGroup _ ?_)
    | refine snd_of_eq (by assumption) (hP.newEntry _ ?_)
    | dsimp only
    | split)

theorem skipCurrentElement_stable {P : Reader → Prop} (hP : Stable P) {st : Reader}
    (h : P st) : P (skipCurrentElement st) := by
  unfold skipCurrentElement
  repeat' (first
    | assumption
    | with_reducible apply stable_ite
    | with_reducible apply stable_ite_snd
    | exact fun _ => rfl
    | with_reducible apply hP.toStableLeaf.updGroup
    | with_reducible apply hP.toStableLeaf.updEntry
    | with_reducible apply hP.toStableLeaf.raiseError
    | with_reducible apply hP.toStableLeaf.setMeta
    | with_reducible apply hP.toStableLeaf.getGroup
    | with_reducible apply hP.toStableLeaf.getEntry
    | with_reducible apply hP.toStableLeaf.randomUuid
    | with_reducible apply hP.toStableLeaf.cipherProcess
    | with_reducible apply hP.toStableLeaf.setNullDeref
    | with_reducible apply hP.toStableLeaf.setXmlError
    | with_reducible apply hP.toStableLeaf.setHeaderHash
    | with_reducible apply hP.toStableLeaf.setBinaryPool
    | with_reducible apply hP.toStableLeaf.addDeletedObject
    | with_reducible apply hP.setPending
    | with_reducible apply hP.newGroup
    | with_reducible apply hP.newEntry
    | with_reducible apply hP.setParent
    | with_reducible apply hP.setGroup
    | with_reducible apply hP.setRootGroup
    | with_reducible apply hP.addBinaryRefs
    | with_reducible apply Reader.endElement_stable hP
    | refine snd_of_eq (by assumption) (Reader.endElement_stable hP ?_)
    | refine snd_of_eq (by assumption) (hP.toStableLeaf.getGroup _ _ ?_)
    | refine snd_of_eq (by assumption) (hP.toStableLeaf.getEntry _ _ ?_)
    | refine snd_of_eq (by assumption) (hP.toStableLeaf.cipherProcess _ _ _ _ ?_)
    | refine snd_of_eq (by assumption) (hP.toStableLeaf.randomUuid _ _ ?_)
    | refine foldl_stable (fun _ _ hs => hP.setParent _ _ _ hs) ?_
    | refine foldl_stable (fun _ _ hs => hP.setGroup _ _ _ hs) ?_
    | refine snd_of_eq (by assumption) (hP.newGroup _ ?_)
    | refine snd_of_eq (by assumption) (hP.newEntry _ ?_)
    | dsimp only
    | split)

theorem readNextStartElement_stable {P : Reader → Prop} (hP : Stable P) {st : Reader}
    (h : P st) : P ((readNextStartElement st).2) := by
  unfold readNextStartElement
  repeat' (first
    | assumption
    | with_reducible apply stable_ite
    | with_reducible apply stable_ite_snd
    | exact fun _ => rfl
    | with_reducible apply hP.toStableLeaf.updGroup
    | with_reducible apply hP.toStableLeaf.updEntry
    | with_reducible apply hP.toStableLeaf.raiseError
    | with_reducible apply hP.toStableLeaf.setMeta
    | with_reducible apply hP.toStableLeaf.getGroup
    | with_reducible apply hP.toStableLeaf.getEntry
    | with_reducible apply hP.toStableLeaf.randomUuid
    | with_reducible apply hP.toStableLeaf.cipherProcess
    | with_reducible apply hP.toStableLeaf.setNullDeref
    | with_reducible apply hP.toStableLeaf.setXmlError
    | with_reducible apply hP.toStableLeaf.setHeaderHash
    | with_reducible apply hP.toStableLeaf.setBinaryPool
    | with_reducible apply hP.toStableLeaf.addDeletedObject
    | with_reducible apply hP.setPending
    | with_reducible apply hP.newGroup
    | with_reducible apply hP.newEntry
    | with_reducible apply hP.setParent
    | with_reducible apply hP.setGroup
    | with_reducible apply hP.setRootGroup
    | with_reducible apply hP.addBinaryRefs
    | refine snd_of_eq (by assumption) (hP.toStableLeaf.getGroup _ _ ?_)
    | refine snd_of_eq (by assumption) (hP.toStableLeaf.getEntry _ _ ?_)
    | refine snd_of_eq (by assumption) (hP.toStableLeaf.cipherProcess _ _ _ _ ?_)
    | refine snd_of_eq (by assumption) (hP.toStableLeaf.randomUuid _ _ ?_)
    | refine foldl_stable (fun _ _ hs => hP.setParent _ _ _ hs) ?_
    | refine foldl_stable (fun _ _ hs => hP.setGroup _ _ _ hs) ?_
    | refine snd_of_eq (by assumption) (hP.newGroup _ ?_)
    | refine snd_of_eq (by assumption) (hP.newEntry _ ?_)
    | dsimp only
    | split)

theorem mergeGroup_stable {P : Reader → Prop} (hP : Stable P) {tmpGroup : Nat} {st : Reader}
    (h : P st) : P ((mergeGroup tmpGroup st).2) := by
  unfold mergeGroup
  repeat' (first
    | assumption
    | with_reducible apply stable_ite
    | with_reducible apply stable_ite_snd
    | refine hP.defGroup _ _ _ (by simpa using getGroup_registered (by assumption)) ?_
    | exact fun _ => rfl
    | with_reducible apply hP.toStableLeaf.updGroup
    | with_reducible apply hP.toStableLeaf.updEntry
    | with_reducible apply hP.toStableLeaf.raiseError
    | with_reducible apply hP.toStableLeaf.setMeta
    | with_reducible apply hP.toStableLeaf.getGroup
    | with_reducible apply hP.toStableLeaf.getEntry
    | with_reducible apply hP.toStableLeaf.randomUuid
    | with_reducible apply hP.toStableLeaf.cipherProcess
    | with_reducible apply hP.toStableLeaf.setNullDeref
    | with_reducible apply hP.toStableLeaf.setXmlError
    | with_reducible apply hP.toStableLeaf.setHeaderHash
    | with_reducible apply hP.toStableLeaf.setBinaryPool
    | with_reducible apply hP.toStableLeaf.addDeletedObject
    | with_reducible apply hP.setPending
    | with_reducible apply hP.newGroup
    | with_reducible apply hP.newEntry
    | with_reducible apply hP.setParent
    | with_reducible apply hP.setGroup
    | with_reducible apply hP.setRootGroup
    | with_reducible apply hP.addBinaryRefs
    | with_reducible apply Reader.deleteGroup_stable hP.toStableLeaf
    | refine snd_of_eq (by assumption) (Reader.deleteGroup_stable hP.toStableLeaf ?_)
    | refine snd_of_eq (by assumption) (hP.toStableLeaf.getGroup _ _ ?_)
    | refine snd_of_eq (by assumption) (hP.toStableLeaf.getEntry _ _ ?_)
    | refine snd_of_eq (by assumption) (hP.toStableLeaf.cipherProcess _ _ _ _ ?_)
    | refine snd_of_eq (by assumption) (hP.toStableLeaf.randomUuid _ _ ?_)
    | refine foldl_stable (fun _ _ hs => hP.setParent _ _ _ hs) ?_
    | refine foldl_stable (fun _ _ hs => hP.setGroup _ _ _ hs) ?_
    | refine snd_of_eq (by assumption) (hP.newGroup _ ?_)
    | refine snd_of_eq (by assumption) (hP.newEntry _ ?_)
    | dsimp only
    | split)

theorem parseGroupFinish_stable {P : Reader → Prop} (hP : Stable P) {env : Env} {l : GroupLocals} {st : Reader}
    (h : P st) : P ((parseGroupFinish env l st).2) := by
  unfold parseGroupFinish
  repeat' (first
    | assumption
    | with_reducible apply stable_ite
    | with_reducible apply stable_ite_snd
    | exact fun _ => rfl
    | with_reducible apply hP.toStableLeaf.updGroup
    | with_reducible apply hP.toStableLeaf.updEntry
    | with_reducible apply hP.toStableLeaf.raiseError
    | with_reducible apply hP.toStableLeaf.setMeta
    | with_reducible apply hP.toStableLeaf.getGroup
    | with_reducible apply hP.toStableLeaf.getEntry
    | with_reducible apply hP.toStableLeaf.randomUuid
    | with_reducible apply hP.toStableLeaf.cipherProcess
    | with_reducible apply hP.toStableLeaf.setNullDeref
    | with_reducible apply hP.toStableLeaf.setXmlError
    | with_reducible apply hP.toStableLeaf.setHeaderHash
    | with_reducible apply hP.toStableLeaf.setBinaryPool
    | with_reducible apply hP.toStableLeaf.addDeletedObject
    | with_reducible apply hP.setPending
    | with_reducible apply hP.newGroup
    | with_reducible apply hP.newEntry
    | with_reducible apply hP.setParent
    | with_reducible apply hP.setGroup
    | with_reducible apply hP.setRootGroup
    | with_reducible apply hP.addBinaryRefs
    | with_reducible apply ensureGroupUuid_stable hP.toStableLeaf
    | refine snd_of_eq (by assumption) (ensureGroupUuid_stable hP.toStableLeaf ?_)
    | with_reducible apply mergeGroup_stable hP
    | refine snd_of_eq (by assumption) (mergeGroup_stable hP ?_)
    | refine snd_of_eq (by assumption) (hP.toStableLeaf.getGroup _ _ ?_)
    | refine snd_of_eq (by assumption) (hP.toStableLeaf.getEntry _ _ ?_)
    | refine snd_of_eq (by assumption) (hP.toStableLeaf.cipherProcess _ _ _ _ ?_)
    | refine snd_of_eq (by assumption) (hP.toStableLeaf.randomUuid _ _ ?_)
    | refine foldl_stable (fun _ _ hs => hP.setParent _ _ _ hs) ?_
    | refine foldl_stable (fun _ _ hs => hP.setGroup _ _ _ hs) ?_
    | refine snd_of_eq (by assumption) (hP.newGroup _ ?_)
    | refine snd_of_eq (by assumption) (hP.newEntry _ ?_)
    | dsimp only
    | split)

theorem mergeEntry_stable {P : Reader → Prop} (hP : Stable P) {history : Bool} {tmpEntry : Nat} {st : Reader}
    (h : P st) : P ((mergeEntry history tmpEntry st).2) := by
  unfold mergeEntry
  repeat' (first
    | assumption
    | with_reducible apply stable_ite
    | with_reducible apply stable_ite_snd
    | refine hP.defEntry _ _ _ (by simpa using getEntry_registered (by assumption)) ?_
    | exact fun _ => rfl
    | with_reducible apply hP.toStableLeaf.updGroup
    | with_reducible apply hP.toStableLeaf.updEntry
    | with_reducible apply hP.toStableLeaf.raiseError
    | with_reducible apply hP.toStableLeaf.setMeta
    | with_reducible apply hP.toStableLeaf.getGroup
    | with_reducible apply hP.toStableLeaf.getEntry
    | with_reducible apply hP.toStableLeaf.randomUuid
    | with_reducible apply hP.toStableLeaf.cipherProcess
    | with_reducible apply hP.toStableLeaf.setNullDeref
    | with_reducible apply hP.toStableLeaf.setXmlError
    | with_reducible apply hP.toStableLeaf.setHeaderHash
    | with_reducible apply hP.toStableLeaf.setBinaryPool
    | with_reducible apply hP.toStableLeaf.addDeletedObject
    | with_reducible apply hP.setPending
    | with_reducible apply hP.newGroup
    | with_reducible apply hP.newEntry
    | with_reducible apply hP.setParent
    | with_reducible apply hP.setGroup
    | with_reducible apply hP.setRootGroup
    | with_reducible apply hP.addBinaryRefs
    | with_reducible apply Reader.deleteEntry_stable hP.toStableLeaf
    | refine snd_of_eq (by assumption) (Reader.deleteEntry_stable hP.toStableLeaf ?_)
    | refine snd_of_eq (by assumption) (hP.toStableLeaf.getGroup _ _ ?_)
    | refine snd_of_eq (by assumption) (hP.toStableLeaf.getEntry _ _ ?_)
    | refine snd_of_eq (by assumption) (hP.toStableLeaf.cipherProcess _ _ _ _ ?_)
    | refine snd_of_eq (by assumption) (hP.toStableLeaf.randomUuid _ _ ?_)
    | refine foldl_stable (fun _ _ hs => hP.setParent _ _ _ hs) ?_
    | refine foldl_stable (fun _ _ hs => hP.setGroup _ _ _ hs) ?_
    | refine snd_of_eq (by assumption) (hP.newGroup _ ?_)
    | refine snd_of_eq (by assumption) (hP.newEntry _ ?_)
    | dsimp only
    | split)

theorem parseEntryFinish_stable {P : Reader → Prop} (hP : Stable P) {env : Env} {history : Bool} {l : EntryLocals} {st : Reader}
    (h : P st) : P ((parseEntryFinish env history l st).2) := by
  unfold parseEntryFinish
  repeat' (first
    | assumption
    | with_reducible apply stable_ite
    | with_reducible apply stable_ite_snd
    | exact fun _ => rfl
    | with_reducible apply hP.toStableLeaf.updGroup
    | with_reducible apply hP.toStableLeaf.updEntry
    | with_reducible apply hP.toStableLeaf.raiseError
    | with_reducible apply hP.toStableLeaf.setMeta
    | with_reducible apply hP.toStableLeaf.getGroup
    | with_reducible apply hP.toStableLeaf.getEntry
    | with_reducible apply hP.toStableLeaf.randomUuid
    | with_reducible apply hP.toStableLeaf.cipherProcess
    | with_reducible apply hP.toStableLeaf.setNullDeref
    | with_reducible apply hP.toStableLeaf.setXmlError
    | with_reducible apply hP.toStableLeaf.setHeaderHash
    | with_reducible apply hP.toStableLeaf.setBinaryPool
    | with_reducible apply hP.toStableLeaf.addDeletedObject
    | with_reducible apply hP.setPending
    | with_reducible apply hP.newGroup
    | with_reducible apply hP.newEntry
    | with_reducible apply hP.setParent
    | with_reducible apply hP.setGroup
    | with_reducible apply hP.setRootGroup
    | with_reducible apply hP.addBinaryRefs
    | with_reducible apply ensureEntryUuid_stable hP.toStableLeaf
    | refine snd_of_eq (by assumption) (ensureEntryUuid_stable hP.toStableLeaf ?_)
    | with_reducible apply mergeEntry_stable hP
    | refine snd_of_eq (by assumption) (mergeEntry_stable hP ?_)
    | with_reducible apply addHistoryItems_stable hP.toStableLeaf
    | refine snd_of_eq (by assumption) (addHistoryItems_stable hP.toStableLeaf ?_)
    | refine snd_of_eq (by assumption) (hP.toStableLeaf.getGroup _ _ ?_)
    | refine snd_of_eq (by assumption) (hP.toStableLeaf.getEntry _ _ ?_)
    | refine snd_of_eq (by assumption) (hP.toStableLeaf.cipherProcess _ _ _ _ ?_)
    | refine snd_of_eq (by assumption) (hP.toStableLeaf.randomUuid _ _ ?_)
    | refine foldl_stable (fun _ _ hs => hP.setParent _ _ _ hs) ?_
    | refine foldl_stable (fun _ _ hs => hP.setGroup _ _ _ hs) ?_
    | refine snd_of_eq (by assumption) (hP.newGroup _ ?_)
    | refine snd_of_eq (by assumption) (hP.newEntry _ ?_)
    | dsimp only
    | split)

/-! ### The recursive parse functions keep a stable property -/

theorem parseEntry_stable_aux {P : Reader → Prop} (hP : Stable P) (env : Env) (n : Nat) :
    (∀ history l st r, P st → parseEntryWhile env n history l st = some r → P r.2) ∧
    (∀ history st r, P st → parseEntry env n history st = some r → P r.2) ∧
    (∀ items st r, P st → parseEntryHistoryWhile env n items st = some r → P r.2) ∧
    (∀ st r, P st → parseEntryHistory env n st = some r → P r.2) := by
  induction n with
  | zero => simp [parseEntryWhile, parseEntry, parseEntryHistoryWhile, parseEntryHistory]
  | succ n ih =>
    obtain ⟨ihW, ihE, ihHW, ihH⟩ := ih
    refine ⟨?_, ?_, ?_, ?_⟩
    · intro history l st r h hr
      unfold parseEntryWhile at hr
      split at hr
      · cases hr
        exact snd_of_eq (by assumption) (readNextStartElement_stable hP h)
      · rename_i x st1 heq
        have h1 : P st1 := snd_of_eq heq (readNextStartElement_stable hP h)
        split at hr
        · split at hr
          · exact ihW _ _ _ _ (hP.raiseError _ _ h1) hr
          · split at hr
            · cases hr
            · rename_i items st2 hh
              exact ihW _ _ _ _ (ihH _ _ h1 hh) hr
        · exact ihW _ _ _ _
            (Reader.endElement_stable hP (parseEntryField_stable hP.toStableLeaf (s := (l.binaryRefs, st1)) h1)) hr
    · intro history st r h hr
      unfold parseEntry at hr
      split at hr
      rename_i entry st1 hnew
      have h1 : P st1 := snd_of_eq hnew (hP.newEntry _ h)
      dsimp only at hr
      split at hr
      · cases hr
      · rename_i l st3 hw
        cases hr
        exact parseEntryFinish_stable hP (ihW _ _ _ _ (hP.updEntry _ _ _ (fun _ => by rfl) h1) hw)
    · intro items st r h hr
      unfold parseEntryHistoryWhile at hr
      split at hr
      · cases hr
        exact snd_of_eq (by assumption) (readNextStartElement_stable hP h)
      · rename_i x st1 heq
        have h1 : P st1 := snd_of_eq heq (readNextStartElement_stable hP h)
        split at hr
        · split at hr
          · cases hr
          · rename_i e st2 he
            exact ihHW _ _ _ (ihE _ _ _ h1 he) hr
        · exact ihHW _ _ _ (skipCurrentElement_stable hP h1) hr
    · intro st r h hr
      unfold parseEntryHistory at hr
      exact ihHW _ _ _ h hr

theorem parseGroup_stable_aux {P : Reader → Prop} (hP : Stable P) (env : Env) (n : Nat) :
    (∀ l st r, P st → parseGroupWhile env n l st = some r → P r.2) ∧
    (∀ st r, P st → parseGroup env n st = some r → P r.2) := by
  induction n with
  | zero => simp [parseGroupWhile, parseGroup]
  | succ n ih =>
    obtain ⟨ihW, ihG⟩ := ih
    refine ⟨?_, ?_⟩
    · intro l st r h hr
      unfold parseGroupWhile at hr
      split at hr
      · cases hr
        exact snd_of_eq (by assumption) (readNextStartElement_stable hP h)
      · rename_i x st1 heq
        have h1 : P st1 := snd_of_eq heq (readNextStartElement_stable hP h)
        split at hr
        · split at hr
          · cases hr
          · rename_i g st2 hg
            exact ihW _ _ _ (ihG _ _ h1 hg) hr
        · split at hr
          · split at hr
            · cases hr
            · rename_i e st2 he
              exact ihW _ _ _ ((parseEntry_stable_aux hP env n).2.1 _ _ _ h1 he) hr
          · exact ihW _ _ _ (Reader.endElement_stable hP (parseGroupField_stable hP.toStableLeaf h1)) hr
    · intro st r h hr
      unfold parseGroup at hr
      split at hr
      rename_i group st1 hnew
      have h1 : P st1 := snd_of_eq hnew (hP.newGroup _ h)
      dsimp only at hr
      split at hr
      · cases hr
      · rename_i l st3 hw
        cases hr
        exact parseGroupFinish_stable hP (ihW _ _ _ (hP.updGroup _ _ _ (fun _ => by rfl) h1) hw)

theorem parseRootWhile_stable {P : Reader → Prop} (hP : Stable P) (env : Env) (n : Nat) :
    ∀ l st r, P st → parseRootWhile env n l st = some r → P r.2 := by
  induction n with
  | zero => simp [parseRootWhile]
  | succ n ih =>
    intro l st r h hr
    unfold parseRootWhile at hr
    split at hr
    · cases hr
      exact snd_of_eq (by assumption) (readNextStartElement_stable hP h)
    · rename_i x st1 heq
      have h1 : P st1 := snd_of_eq heq (readNextStartElement_stable hP h)
      split at hr
      · split at hr
        · exact ih _ _ _ (hP.raiseError _ _ h1) hr
        · split at hr
          · cases hr
          · rename_i g st2 hg
            exact ih _ _ _ (Reader.deleteGroup_stable hP.toStableLeaf (hP.setRootGroup _ _
              ((parseGroup_stable_aux hP env n).2 _ _ h1 hg))) hr
      · split at hr
        · exact ih _ _ _ (Reader.endElement_stable hP (parseDeletedObjects_stable hP.toStableLeaf h1)) hr
        · exact ih _ _ _ (skipCurrentElement_stable hP h1) hr

theorem parseRoot_stable {P : Reader → Prop} (hP : Stable P) (env : Env) (n : Nat)
    (st : Reader) (r : Bool × Reader) (h : P st) (hr : parseRoot env n st = some r) :
    P r.2 := by
  cases n with
  | zero => simp [parseRoot] at hr
  | succ n =>
    simp only [parseRoot] at hr
    split at hr
    · cases hr
    · rename_i l st1 hw
      cases hr
      exact parseRootWhile_stable hP env n _ _ _ h hw

theorem parseKeePassFileWhile_stable {P : Reader → Prop} (hP : Stable P) (env : Env)
    (n : Nat) : ∀ l st r, P st → parseKeePassFileWhile env n l st = some r → P r.2 := by
  induction n with
  | zero => simp [parseKeePassFileWhile]
  | succ n ih =>
    intro l st r h hr
    unfold parseKeePassFileWhile at hr
    split at hr
    · cases hr
      exact snd_of_eq (by assumption) (readNextStartElement_stable hP h)
    · rename_i x st1 heq
      have h1 : P st1 := snd_of_eq heq (readNextStartElement_stable hP h)
      split at hr
      · exact ih _ _ _ (Reader.endElement_stable hP (parseMeta_stable hP.toStableLeaf h1)) hr
      · split at hr
        · split at hr
          · exact ih _ _ _ h1 hr
          · split at hr
            · cases hr
            · rename_i ok st2 hroot
              exact ih _ _ _ (parseRoot_stable hP env n _ _ h1 hroot) hr
        · exact ih _ _ _ (skipCurrentElement_stable hP h1) hr

theorem parseKeePassFile_stable {P : Reader → Prop} (hP : Stable P) (env : Env) (n : Nat)
    (st : Reader) (r : Bool × Reader) (h : P st) (hr : parseKeePassFile env n st = some r) :
    P r.2 := by
  cases n with
  | zero => simp [parseKeePassFile] at hr
  | succ n =>
    simp only [parseKeePassFile] at hr
    split at hr
    · cases hr
    · rename_i l st1 hw
      cases hr
      exact parseKeePassFileWhile_stable hP env n _ _ _ h hw

theorem resolveBinaries_stable {P : Reader → Prop} (hP : StableLeaf P)
    {items : List (String × Nat × String)} {st : Reader} (h : P st) :
    P (resolveBinaries items st) := by
  induction items generalizing st with
  | nil => exact h
  | cons x rest ih =>
    obtain ⟨id, entry, name⟩ := x
    unfold resolveBinaries
    apply ih
    refine hP.updEntry _ _ _ (fun _ => rfl) ?_
    split
    · exact h
    · exact hP.setBinaryPool _ _ h

theorem enableUpdates_stable {P : Reader → Prop} (hP : StableLeaf P) {st : Reader} (h : P st) :
    P (enableUpdates st) := by
  unfold enableUpdates
  refine foldl_stable (fun s kv hs => ?_) (foldl_stable (fun s kv hs => ?_) (hP.setMeta _ _ h))
  · exact foldl_stable (fun t a ht => hP.updEntry _ _ _ (fun _ => by rfl) ht) (hP.updEntry _ _ _ (fun _ => by rfl) hs)
  · exact hP.updGroup _ _ _ (fun _ => by rfl) hs

theorem readDatabaseFinish_stable {P : Reader → Prop} (hP : StableLeaf P) {env : Env} {b : Bool}
    {st : Reader} (h : P st) : P (readDatabaseFinish env b st) := by
  unfold readDatabaseFinish
  split
  · exact hP.raiseError _ _ h
  · exact enableUpdates_stable hP (resolveBinaries_stable hP h)

theorem readDatabaseFuel_stable {P : Reader → Prop} (hP : Stable P) {env : Env} {fuel : Nat}
    {strictMode : Bool} {binaryPool : List (String × QByteArray)}
    {randomStream : Option QByteArray} {doc : XmlElement} {r : Reader}
    (h : P (Reader.start strictMode binaryPool randomStream doc))
    (hr : readDatabaseFuel env fuel strictMode binaryPool randomStream doc = some r) : P r := by
  unfold readDatabaseFuel at hr
  split at hr
  · rename_i x st1 heq
    have h1 : P st1 := snd_of_eq heq (readNextStartElement_stable hP h)
    split at hr
    · split at hr
      · cases hr
      · rename_i ok st2 hk
        cases hr
        exact readDatabaseFinish_stable hP.toStableLeaf (parseKeePassFile_stable hP env _ _ _ h1 hk)
    · cases hr
      exact readDatabaseFinish_stable hP.toStableLeaf h1
  · rename_i st1 heq
    cases hr
    exact readDatabaseFinish_stable hP.toStableLeaf (snd_of_eq heq (readNextStartElement_stable hP h))

/-! ### Properties that are stable -/

theorem stable_m_error : Stable (fun t => t.m_error = true) := by
  refine ⟨⟨?_, ?_, ?_, ?_, ?_, ?_, ?_, ?_, ?_, ?_, ?_, ?_, ?_⟩, ?_, ?_, ?_, ?_, ?_, ?_, ?_, ?_, ?_⟩ <;>
    intros <;> simp_all [Reader.raiseError, Reader.setMeta, Reader.newGroup,
      Reader.newEntry, Reader.randomUuid, Reader.cipherProcess]

theorem stable_xmlError : Stable (fun t => t.xmlError = true) := by
  refine ⟨⟨?_, ?_, ?_, ?_, ?_, ?_, ?_, ?_, ?_, ?_, ?_, ?_, ?_⟩, ?_, ?_, ?_, ?_, ?_, ?_, ?_, ?_, ?_⟩ <;>
    intros <;> simp_all [Reader.raiseError, Reader.setMeta, Reader.newGroup,
      Reader.newEntry, Reader.randomUuid, Reader.cipherProcess]

theorem stable_strictMode (b : Bool) : Stable (fun t => t.m_strictMode = b) := by
  refine ⟨⟨?_, ?_, ?_, ?_, ?_, ?_, ?_, ?_, ?_, ?_, ?_, ?_, ?_⟩, ?_, ?_, ?_, ?_, ?_, ?_, ?_, ?_, ?_⟩ <;>
    intros <;> simp_all [Reader.raiseError, Reader.setMeta, Reader.newGroup,
      Reader.newEntry, Reader.randomUuid, Reader.cipherProcess]

theorem stable_tmpParent (p : Nat) : Stable (fun t => t.m_tmpParent = p) := by
  refine ⟨⟨?_, ?_, ?_, ?_, ?_, ?_, ?_, ?_, ?_, ?_, ?_, ?_, ?_⟩, ?_, ?_, ?_, ?_, ?_, ?_, ?_, ?_, ?_⟩ <;>
    intros <;> simp_all [Reader.raiseError, Reader.setMeta, Reader.newGroup,
      Reader.newEntry, Reader.randomUuid, Reader.cipherProcess]

/-! ### The loops under an error of the XML reader -/

theorem readNextStartElement_of_xmlError {st : Reader} (h : st.xmlError = true) :
    readNextStartElement st = (none, st) := by
  simp [readNextStartElement, h]

theorem forEachChild_of_xmlError {σ : Type} (body : XmlElement → σ × Reader → σ × Reader)
    (xs : List XmlElement) (s : σ × Reader) (h : s.2.xmlError = true) :
    forEachChild body xs s = s := by
  cases xs with
  | nil => rfl
  | cons x rest => simp [forEachChild, h]


/-! ### Lookups and the registries -/

/-- A property of the group registry and its records of lookups and merges is
stable when it is kept by entering a new UUID, by recording a lookup and by
recording a merge. -/
theorem Stable.of_groups
    (Q : List (Uuid × Nat) → List (Uuid × Nat) → List (Uuid × Nat) → Prop)
    (hreg : ∀ m lg d u p, mapGet u m = none → Q m lg d → Q (mapSet u p m) (lg ++ [(u, p)]) d)
    (hlog : ∀ m lg d u p, mapGet u m = some p → Q m lg d → Q m (lg ++ [(u, p)]) d)
    (hdef : ∀ m lg d u p, mapGet u m = some p → Q m lg d → Q m lg (d ++ [(u, p)])) :
    Stable (fun t => Q t.m_groups t.groupLog t.groupDefs) := by
  refine ⟨⟨?_, ?_, ?_, ?_, ?g, ?e, ?_, ?_, ?_, ?_, ?_, ?_, ?_⟩, ?_, ?_, ?_, ?_, ?_, ?_, ?_, ?_, ?_⟩
  case g =>
    intro st u h
    unfold getGroup
    split
    · exact h
    · split
      · rename_i p hp
        simpa using hlog _ _ _ _ _ hp h
      · rename_i hn
        simpa [Reader.newGroup] using hreg _ _ _ u _ hn h
  case e =>
    intro st u h
    unfold getEntry
    split
    · exact h
    · split
      · simpa using h
      · simpa [Reader.newEntry] using h
  all_goals
    intros
    simp_all [Reader.raiseError, Reader.setMeta, Reader.newGroup,
      Reader.newEntry, Reader.randomUuid, Reader.cipherProcess]

/-- The same for the entry registry. -/
theorem Stable.of_entries
    (Q : List (Uuid × Nat) → List (Uuid × Nat) → List (Uuid × Nat) → Prop)
    (hreg : ∀ m lg d u p, mapGet u m = none → Q m lg d → Q (mapSet u p m) (lg ++ [(u, p)]) d)
    (hlog : ∀ m lg d u p, mapGet u m = some p → Q m lg d → Q m (lg ++ [(u, p)]) d)
    (hdef : ∀ m lg d u p, mapGet u m = some p → Q m lg d → Q m lg (d ++ [(u, p)])) :
    Stable (fun t => Q t.m_entries t.entryLog t.entryDefs) := by
  refine ⟨⟨?_, ?_, ?_, ?_, ?g, ?e, ?_, ?_, ?_, ?_, ?_, ?_, ?_⟩, ?_, ?_, ?_, ?_, ?_, ?_, ?_, ?_, ?_⟩
  case e =>
    intro st u h
    unfold getEntry
    split
    · exact h
    · split
      · rename_i p hp
        simpa using hlog _ _ _ _ _ hp h
      · rename_i hn
        simpa [Reader.newEntry] using hreg _ _ _ u _ hn h
  case g =>
    intro st u h
    unfold getGroup
    split
    · exact h
    · split
      · simpa using h
      · simpa [Reader.newGroup] using h
  all_goals
    intros
    simp_all [Reader.raiseError, Reader.setMeta, Reader.newGroup,
      Reader.newEntry, Reader.randomUuid, Reader.cipherProcess]

/-- Once the group registry maps `u` to `p`, it does so for the rest of the
decode. -/
theorem stable_group_lookup (u : Uuid) (p : Nat) :
    Stable (fun t => mapGet u t.m_groups = some p) :=
  Stable.of_groups (fun m _ _ => mapGet u m = some p)
    (fun _ _ _ _ w hn h => mapGet_mapSet_of_some w h hn) (fun _ _ _ _ _ _ h => h)
    (fun _ _ _ _ _ _ h => h)

/-- Once the entry registry maps `u` to `p`, it does so for the rest of the
decode. -/
theorem stable_entry_lookup (u : Uuid) (p : Nat) :
    Stable (fun t => mapGet u t.m_entries = some p) :=
  Stable.of_entries (fun m _ _ => mapGet u m = some p)
    (fun _ _ _ _ w hn h => mapGet_mapSet_of_some w h hn) (fun _ _ _ _ _ _ h => h)
    (fun _ _ _ _ _ _ h => h)

theorem lookups_agree_register {m lg : List (Uuid × Nat)} {u : Uuid} (p : Nat)
    (hn : mapGet u m = none) (h : ∀ e ∈ lg, mapGet e.1 m = some e.2) :
    ∀ e ∈ lg ++ [(u, p)], mapGet e.1 (mapSet u p m) = some e.2 := by
  intro e he
  rcases List.mem_append.mp he with he | he
  · exact mapGet_mapSet_of_some p (h e he) hn
  · obtain rfl : e = (u, p) := by simpa using he
    exact mapGet_mapSet_self _ _ _

theorem lookups_agree_log {m lg : List (Uuid × Nat)} {u : Uuid} {p : Nat}
    (hp : mapGet u m = some p) (h : ∀ e ∈ lg, mapGet e.1 m = some e.2) :
    ∀ e ∈ lg ++ [(u, p)], mapGet e.1 m = some e.2 := by
  intro e he
  rcases List.mem_append.mp he with he | he
  · exact h e he
  · obtain rfl : e = (u, p) := by simpa using he
    exact hp

/-- Every recorded lookup of a group agrees with the registry. -/
theorem stable_groupLog :
    Stable (fun t => ∀ e ∈ t.groupLog, mapGet e.1 t.m_groups = some e.2) :=
  Stable.of_groups (fun m lg _ => ∀ e ∈ lg, mapGet e.1 m = some e.2)
    (fun _ _ _ _ p hn h => lookups_agree_register p hn h)
    (fun _ _ _ _ _ hp h => lookups_agree_log hp h) (fun _ _ _ _ _ _ h => h)

/-- Every recorded lookup of an entry agrees with the registry. -/
theorem stable_entryLog :
    Stable (fun t => ∀ e ∈ t.entryLog, mapGet e.1 t.m_entries = some e.2) :=
  Stable.of_entries (fun m lg _ => ∀ e ∈ lg, mapGet e.1 m = some e.2)
    (fun _ _ _ _ p hn h => lookups_agree_register p hn h)
    (fun _ _ _ _ _ hp h => lookups_agree_log hp h) (fun _ _ _ _ _ _ h => h)

/-- What `getGroup` does for a non-null UUID: it returns an object, records the
lookup, and leaves the registry mapping the UUID to that object: the object
already registered if there is one, else the one allocated now. -/
theorem getGroup_spec (u : Uuid) (st : Reader) (hu : u.isNull = false) :
    ∃ g, (getGroup u st).1 = some g ∧
      (getGroup u st).2.groupLog = st.groupLog ++ [(u, g)] ∧
      mapGet u (getGroup u st).2.m_groups = some g ∧
      (∀ p, mapGet u st.m_groups = some p → g = p) ∧
      (mapGet u st.m_groups = none → g = st.groups.length) := by
  unfold getGroup
  simp only [hu, Bool.false_eq_true, if_false]
  cases hm : mapGet u st.m_groups with
  | some p => exact ⟨p, by simp [hm]⟩
  | none =>
    refine ⟨st.groups.length, ?_⟩
    simp [Reader.newGroup, mapGet_mapSet_self]

/-- What `getEntry` does for a non-null UUID. -/
theorem getEntry_spec (u : Uuid) (st : Reader) (hu : u.isNull = false) :
    ∃ e, (getEntry u st).1 = some e ∧
      (getEntry u st).2.entryLog = st.entryLog ++ [(u, e)] ∧
      mapGet u (getEntry u st).2.m_entries = some e ∧
      (∀ p, mapGet u st.m_entries = some p → e = p) ∧
      (mapGet u st.m_entries = none → e = st.entries.length) := by
  unfold getEntry
  simp only [hu, Bool.false_eq_true, if_false]
  cases hm : mapGet u st.m_entries with
  | some p => exact ⟨p, by simp [hm]⟩
  | none =>
    refine ⟨st.entries.length, ?_⟩
    simp [Reader.newEntry, mapGet_mapSet_self]

theorem ensureGroupUuid_of_uuid (env : Env) (group : Nat) (st : Reader)
    (hu : (st.group group).m_uuid.isNull = false) : ensureGroupUuid env group st = st := by
  simp [ensureGroupUuid, hu]

theorem ensureEntryUuid_of_uuid (env : Env) (entry : Nat) (st : Reader)
    (hu : (st.entry entry).m_uuid.isNull = false) : ensureEntryUuid env entry st = st := by
  simp [ensureEntryUuid, hu]

/-- The value of `mergeGroup` for a local group with a non-null UUID. -/
theorem mergeGroup_eq (tmpGroup : Nat) (st : Reader) (g : Nat) (s1 : Reader)
    (hu : (st.group tmpGroup).m_uuid.isNull = false)
    (hg : getGroup (st.group tmpGroup).m_uuid st = (some g, s1)) :
    mergeGroup tmpGroup st =
      (g, (((s1.updGroup g (fun x => x.copyDataFrom (s1.group tmpGroup))).updGroup g
        (fun x => { x with m_updateTimeinfo := false })).deleteGroup tmpGroup).defGroup
          (st.group tmpGroup).m_uuid g) := by
  unfold mergeGroup
  simp only [hu, hg, Bool.not_false, if_true]

/-- The value of `mergeEntry` outside history for a local entry with a non-null
UUID. -/
theorem mergeEntry_eq (tmpEntry : Nat) (st : Reader) (e : Nat) (s1 : Reader)
    (hu : (st.entry tmpEntry).m_uuid.isNull = false)
    (he : getEntry (st.entry tmpEntry).m_uuid st = (some e, s1)) :
    mergeEntry false tmpEntry st =
      (e, (((s1.updEntry e (fun x => x.copyDataFrom (s1.entry tmpEntry))).updEntry e
        (fun x => { x with m_updateTimeinfo := false })).deleteEntry tmpEntry).defEntry
          (st.entry tmpEntry).m_uuid e) := by
  unfold mergeEntry
  simp only [hu, he, Bool.not_false, if_true, Bool.false_eq_true, if_false]

/-- The value of `parseGroupFinish` for a local group with a non-null UUID. -/
theorem parseGroupFinish_eq (env : Env) (l : GroupLocals) (st : Reader) (g : Nat) (s1 : Reader)
    (hu : (st.group l.group).m_uuid.isNull = false)
    (hg : getGroup (st.group l.group).m_uuid st = (some g, s1)) :
    parseGroupFinish env l st =
      (g, l.entries.foldl (fun s entry => s.setGroup entry g)
        (l.children.foldl (fun s child => s.setParent child g)
          ((((s1.updGroup g (fun x => x.copyDataFrom (s1.group l.group))).updGroup g
            (fun x => { x with m_updateTimeinfo := false })).deleteGroup l.group).defGroup
              (st.group l.group).m_uuid g))) := by
  unfold parseGroupFinish
  simp only [ensureGroupUuid_of_uuid env l.group st hu, mergeGroup_eq l.group st g s1 hu hg]

/-- The defining `Group` element ends in the registry's object: for a local
group with a non-null UUID `u`, `parseGroupFinish` returns the object `getGroup`
gives for `u`, records that lookup last and the merge, and leaves the registry
mapping `u` to it. -/
theorem parseGroupFinish_registry (env : Env) (l : GroupLocals) (st : Reader)
    (hu : (st.group l.group).m_uuid.isNull = false) :
    (getGroup (st.group l.group).m_uuid st).1 = some (parseGroupFinish env l st).1 ∧
    (parseGroupFinish env l st).2.groupLog =
      st.groupLog ++ [((st.group l.group).m_uuid, (parseGroupFinish env l st).1)] ∧
    (parseGroupFinish env l st).2.groupDefs =
      st.groupDefs ++ [((st.group l.group).m_uuid, (parseGroupFinish env l st).1)] ∧
    mapGet (st.group l.group).m_uuid (parseGroupFinish env l st).2.m_groups =
      some (parseGroupFinish env l st).1 := by
  obtain ⟨g, h1, h2, h3, -, -⟩ := getGroup_spec (st.group l.group).m_uuid st hu
  have hg : getGroup (st.group l.group).m_uuid st =
      (some g, (getGroup (st.group l.group).m_uuid st).2) := by
    rw [← h1]
  rw [parseGroupFinish_eq env l st g _ hu hg]
  refine ⟨h1, ?_, ?_, ?_⟩
  · simp [h2]
  · simp
  · simp [h3]

/-- The value of `parseEntryFinish` outside history for a local entry with a
non-null UUID. -/
theorem parseEntryFinish_eq (env : Env) (l : EntryLocals) (st : Reader) (e : Nat) (s1 : Reader)
    (hu : (st.entry l.entry).m_uuid.isNull = false)
    (he : getEntry (st.entry l.entry).m_uuid st = (some e, s1)) :
    parseEntryFinish env false l st =
      (e, (addHistoryItems e l.historyItems
        ((((s1.updEntry e (fun x => x.copyDataFrom (s1.entry l.entry))).updEntry e
          (fun x => { x with m_updateTimeinfo := false })).deleteEntry l.entry).defEntry
            (st.entry l.entry).m_uuid e)).addBinaryRefs
        (l.binaryRefs.map (fun ref => (ref.1, e, ref.2)))) := by
  unfold parseEntryFinish
  simp only [ensureEntryUuid_of_uuid env l.entry st hu, mergeEntry_eq l.entry st e s1 hu he]

/-- The defining `Entry` element outside history ends in the registry's object:
for a local entry with a non-null UUID `u`, `parseEntryFinish` returns the object
`getEntry` gives for `u`, records that lookup last and the merge, and leaves the
registry mapping `u` to it. -/
theorem parseEntryFinish_registry (env : Env) (l : EntryLocals) (st : Reader)
    (hu : (st.entry l.entry).m_uuid.isNull = false) :
    (getEntry (st.entry l.entry).m_uuid st).1 = some (parseEntryFinish env false l st).1 ∧
    (parseEntryFinish env false l st).2.entryLog =
      st.entryLog ++ [((st.entry l.entry).m_uuid, (parseEntryFinish env false l st).1)] ∧
    (parseEntryFinish env false l st).2.entryDefs =
      st.entryDefs ++ [((st.entry l.entry).m_uuid, (parseEntryFinish env false l st).1)] ∧
    mapGet (st.entry l.entry).m_uuid (parseEntryFinish env false l st).2.m_entries =
      some (parseEntryFinish env false l st).1 := by
  obtain ⟨e, h1, h2, h3, -, -⟩ := getEntry_spec (st.entry l.entry).m_uuid st hu
  have he : getEntry (st.entry l.entry).m_uuid st =
      (some e, (getEntry (st.entry l.entry).m_uuid st).2) := by
    rw [← h1]
  rw [parseEntryFinish_eq env l st e _ hu he]
  refine ⟨h1, ?_, ?_, ?_⟩
  · simp [h2]
  · simp
  · simp [h3]

/-- Every recorded merge of a `Group` element agrees with the registry. -/
theorem stable_groupDefs :
    Stable (fun t => ∀ e ∈ t.groupDefs, mapGet e.1 t.m_groups = some e.2) :=
  Stable.of_groups (fun m _ d => ∀ e ∈ d, mapGet e.1 m = some e.2)
    (fun _ _ _ _ p hn h e he => mapGet_mapSet_of_some p (h e he) hn)
    (fun _ _ _ _ _ _ h => h) (fun _ _ _ _ _ hp h => lookups_agree_log hp h)

/-- Every recorded merge of an `Entry` element agrees with the registry. -/
theorem stable_entryDefs :
    Stable (fun t => ∀ e ∈ t.entryDefs, mapGet e.1 t.m_entries = some e.2) :=
  Stable.of_entries (fun m _ d => ∀ e ∈ d, mapGet e.1 m = some e.2)
    (fun _ _ _ _ p hn h e he => mapGet_mapSet_of_some p (h e he) hn)
    (fun _ _ _ _ _ _ h => h) (fun _ _ _ _ _ hp h => lookups_agree_log hp h)


/-! ### C10: a pool reference whose `Value` comes before its `Key` -/

/-- C10, the code at the failing input: the pool holds the bytes [4, 5, 6] under
the id `7`, and the entry's `Binary` element has the child `Value Ref="7"` and
the child `Key` with the name `file`. With `Key` first the decode records the
reference and the attachment `file` ends with the pool's bytes. With `Value`
first the decode raises no error, records no reference, and the attachment
`file` ends empty. -/
theorem C10_value_before_key_loses_reference :
    (readDatabase Env.sample false [("7", [4, 5, 6])] none
        (Sample.docBinary [Sample.binaryKey, Sample.binaryRef])).map Reader.observeBinary =
      some (false, [("7", 1, "file")], [("file", [4, 5, 6])]) ∧
    (readDatabase Env.sample false [("7", [4, 5, 6])] none
        (Sample.docBinary [Sample.binaryRef, Sample.binaryKey])).map Reader.observeBinary =
      some (false, [], [("file", [])]) :=
  ⟨rfl, rfl⟩

/-! ### C9: what each change of the tree leaves alone -/

@[simp] theorem View.updParent_children (V : View) (p : Nat) (x : GroupParent) : (V.updParent p x).children = V.children := by
  simp only [View.updParent, View.updChildren, View.updGentries, View.updEgroup, View.cleanupParent, View.setParent, View.setRootGroup, View.setGroup, View.newGroup, View.newEntry, View.getGroup, View.getEntry, View.defGroup, View.defEntry]
  repeat' split
  all_goals rfl

@[simp] theorem View.updParent_gentries (V : View) (p : Nat) (x : GroupParent) : (V.updParent p x).gentries = V.gentries := by
  simp only [View.updParent, View.updChildren, View.updGentries, View.updEgroup, View.cleanupParent, View.setParent, View.setRootGroup, View.setGroup, View.newGroup, View.newEntry, View.getGroup, View.getEntry, View.defGroup, View.defEntry]
  repeat' split
  all_goals rfl

@[simp] theorem View.updParent_egroup (V : View) (p : Nat) (x : GroupParent) : (V.updParent p x).egroup = V.egroup := by
  simp only [View.updParent, View.updChildren, View.updGentries, View.updEgroup, View.cleanupParent, View.setParent, View.setRootGroup, View.setGroup, View.newGroup, View.newEntry, View.getGroup, View.getEntry, View.defGroup, View.defEntry]
  repeat' split
  all_goals rfl

@[simp] theorem View.updParent_reg (V : View) (p : Nat) (x : GroupParent) : (V.updParent p x).reg = V.reg := by
  simp only [View.updParent, View.updChildren, View.updGentries, View.updEgroup, View.cleanupParent, View.setParent, View.setRootGroup, View.setGroup, View.newGroup, View.newEntry, View.getGroup, View.getEntry, View.defGroup, View.defEntry]
  repeat' split
  all_goals rfl

@[simp] theorem View.updParent_ereg (V : View) (p : Nat) (x : GroupParent) : (V.updParent p x).ereg = V.ereg := by
  simp only [View.updParent, View.updChildren, View.updGentries, View.updEgroup, View.cleanupParent, View.setParent, View.setRootGroup, View.setGroup, View.newGroup, View.newEntry, View.getGroup, View.getEntry, View.defGroup, View.defEntry]
  repeat' split
  all_goals rfl

@[simp] theorem View.updParent_gdefs (V : View) (p : Nat) (x : GroupParent) : (V.updParent p x).gdefs = V.gdefs := by
  simp only [View.updParent, View.updChildren, View.updGentries, View.updEgroup, View.cleanupParent, View.setParent, View.setRootGroup, View.setGroup, View.newGroup, View.newEntry, View.getGroup, View.getEntry, View.defGroup, View.defEntry]
  repeat' split
  all_goals rfl

@[simp] theorem View.updParent_edefs (V : View) (p : Nat) (x : GroupParent) : (V.updParent p x).edefs = V.edefs := by
  simp only [View.updParent, View.updChildren, View.updGentries, View.updEgroup, View.cleanupParent, View.setParent, View.setRootGroup, View.setGroup, View.newGroup, View.newEntry, View.getGroup, View.getEntry, View.defGroup, View.defEntry]
  repeat' split
  all_goals rfl

@[simp] theorem View.updParent_tp (V : View) (p : Nat) (x : GroupParent) : (V.updParent p x).tp = V.tp := by
  simp only [View.updParent, View.updChildren, View.updGentries, View.updEgroup, View.cleanupParent, View.setParent, View.setRootGroup, View.setGroup, View.newGroup, View.newEntry, View.getGroup, View.getEntry, View.defGroup, View.defEntry]
  repeat' split
  all_goals rfl

@[simp] theorem View.updParent_glen (V : View) (p : Nat) (x : GroupParent) : (V.updParent p x).glen = V.glen := by
  simp only [View.updParent, View.updChildren, View.updGentries, View.updEgroup, View.cleanupParent, View.setParent, View.setRootGroup, View.setGroup, View.newGroup, View.newEntry, View.getGroup, View.getEntry, View.defGroup, View.defEntry]
  repeat' split
  all_goals rfl

@[simp] theorem View.updParent_elen (V : View) (p : Nat) (x : GroupParent) : (V.updParent p x).elen = V.elen := by
  simp only [View.updParent, View.updChildren, View.updGentries, View.updEgroup, View.cleanupParent, View.setParent, View.setRootGroup, View.setGroup, View.newGroup, View.newEntry, View.getGroup, View.getEntry, View.defGroup, View.defEntry]
  repeat' split
  all_goals rfl

@[simp] theorem View.updParent_root (V : View) (p : Nat) (x : GroupParent) : (V.updParent p x).root = V.root := by
  simp only [View.updParent, View.updChildren, View.updGentries, View.updEgroup, View.cleanupParent, View.setParent, View.setRootGroup, View.setGroup, View.newGroup, View.newEntry, View.getGroup, View.getEntry, View.defGroup, View.defEntry]
  repeat' split
  all_goals rfl

@[simp] theorem View.updChildren_parent (V : View) (p : Nat) (f : List Nat → List Nat) : (V.updChildren p f).parent = V.parent := by
  simp only [View.updParent, View.updChildren, View.updGentries, View.updEgroup, View.cleanupParent, View.setParent, View.setRootGroup, View.setGroup, View.newGroup, View.newEntry, View.getGroup, View.getEntry, View.defGroup, View.defEntry]
  repeat' split
  all_goals rfl

@[simp] theorem View.updChildren_gentries (V : View) (p : Nat) (f : List Nat → List Nat) : (V.updChildren p f).gentries = V.gentries := by
  simp only [View.updParent, View.updChildren, View.updGentries, View.updEgroup, View.cleanupParent, View.setParent, View.setRootGroup, View.setGroup, View.newGroup, View.newEntry, View.getGroup, View.getEntry, View.defGroup, View.defEntry]
  repeat' split
  all_goals rfl

@[simp] theorem View.updChildren_egroup (V : View) (p : Nat) (f : List Nat → List Nat) : (V.updChildren p f).egroup = V.egroup := by
  simp only [View.updParent, View.updChildren, View.updGentries, View.updEgroup, View.cleanupParent, View.setParent, View.setRootGroup, View.setGroup, View.newGroup, View.newEntry, View.getGroup, View.getEntry, View.defGroup, View.defEntry]
  repeat' split
  all_goals rfl

@[simp] theorem View.updChildren_reg (V : View) (p : Nat) (f : List Nat → List Nat) : (V.updChildren p f).reg = V.reg := by
  simp only [View.updParent, View.updChildren, View.updGentries, View.updEgroup, View.cleanupParent, View.setParent, View.setRootGroup, View.setGroup, View.newGroup, View.newEntry, View.getGroup, View.getEntry, View.defGroup, View.defEntry]
  repeat' split
  all_goals rfl

@[simp] theorem View.updChildren_ereg (V : View) (p : Nat) (f : List Nat → List Nat) : (V.updChildren p f).ereg = V.ereg := by
  simp only [View.updParent, View.updChildren, View.updGentries, View.updEgroup, View.cleanupParent, View.setParent, View.setRootGroup, View.setGroup, View.newGroup, View.newEntry, View.getGroup, View.getEntry, View.defGroup, View.defEntry]
  repeat' split
  all_goals rfl

@[simp] theorem View.updChildren_gdefs (V : View) (p : Nat) (f : List Nat → List Nat) : (V.updChildren p f).gdefs = V.gdefs := by
  simp only [View.updParent, View.updChildren, View.updGentries, View.updEgroup, View.cleanupParent, View.setParent, View.setRootGroup, View.setGroup, View.newGroup, View.newEntry, View.getGroup, View.getEntry, View.defGroup, View.defEntry]
  repeat' split
  all_goals rfl

@[simp] theorem View.updChildren_edefs (V : View) (p : Nat) (f : List Nat → List Nat) : (V.updChildren p f).edefs = V.edefs := by
  simp only [View.updParent, View.updChildren, View.updGentries, View.updEgroup, View.cleanupParent, View.setParent, View.setRootGroup, View.setGroup, View.newGroup, View.newEntry, View.getGroup, View.getEntry, View.defGroup, View.defEntry]
  repeat' split
  all_goals rfl

@[simp] theorem View.updChildren_tp (V : View) (p : Nat) (f : List Nat → List Nat) : (V.updChildren p f).tp = V.tp := by
  simp only [View.updParent, View.updChildren, View.updGentries, View.updEgroup, View.cleanupParent, View.setParent, View.setRootGroup, View.setGroup, View.newGroup, View.newEntry, View.getGroup, View.getEntry, View.defGroup, View.defEntry]
  repeat' split
  all_goals rfl

@[simp] theorem View.updChildren_glen (V : View) (p : Nat) (f : List Nat → List Nat) : (V.updChildren p f).glen = V.glen := by
  simp only [View.updParent, View.updChildren, View.updGentries, View.updEgroup, View.cleanupParent, View.setParent, View.setRootGroup, View.setGroup, View.newGroup, View.newEntry, View.getGroup, View.getEntry, View.defGroup, View.defEntry]
  repeat' split
  all_goals rfl

@[simp] theorem View.updChildren_elen (V : View) (p : Nat) (f : List Nat → List Nat) : (V.updChildren p f).elen = V.elen := by
  simp only [View.updParent, View.updChildren, View.updGentries, View.updEgroup, View.cleanupParent, View.setParent, View.setRootGroup, View.setGroup, View.newGroup, View.newEntry, View.getGroup, View.getEntry, View.defGroup, View.defEntry]
  repeat' split
  all_goals rfl

@[simp] theorem View.updChildren_root (V : View) (p : Nat) (f : List Nat → List Nat) : (V.updChildren p f).root = V.root := by
  simp only [View.updParent, View.updChildren, View.updGentries, View.updEgroup, View.cleanupParent, View.setParent, View.setRootGroup, View.setGroup, View.newGroup, View.newEntry, View.getGroup, View.getEntry, View.defGroup, View.defEntry]
  repeat' split
  all_goals rfl

@[simp] theorem View.updGentries_parent (V : View) (p : Nat) (f : List Nat → List Nat) : (V.updGentries p f).parent = V.parent := by
  simp only [View.updParent, View.updChildren, View.updGentries, View.updEgroup, View.cleanupParent, View.setParent, View.setRootGroup, View.setGroup, View.newGroup, View.newEntry, View.getGroup, View.getEntry, View.defGroup, View.defEntry]
  repeat' split
  all_goals rfl

@[simp] theorem View.updGentries_children (V : View) (p : Nat) (f : List Nat → List Nat) : (V.updGentries p f).children = V.children := by
  simp only [View.updParent, View.updChildren, View.updGentries, View.updEgroup, View.cleanupParent, View.setParent, View.setRootGroup, View.setGroup, View.newGroup, View.newEntry, View.getGroup, View.getEntry, View.defGroup, View.defEntry]
  repeat' split
  all_goals rfl

@[simp] theorem View.updGentries_egroup (V : View) (p : Nat) (f : List Nat → List Nat) : (V.updGentries p f).egroup = V.egroup := by
  simp only [View.updParent, View.updChildren, View.updGentries, View.updEgroup, View.cleanupParent, View.setParent, View.setRootGroup, View.setGroup, View.newGroup, View.newEntry, View.getGroup, View.getEntry, View.defGroup, View.defEntry]
  repeat' split
  all_goals rfl

@[simp] theorem View.updGentries_reg (V : View) (p : Nat) (f : List Nat → List Nat) : (V.updGentries p f).reg = V.reg := by
  simp only [View.updParent, View.updChildren, View.updGentries, View.updEgroup, View.cleanupParent, View.setParent, View.setRootGroup, View.setGroup, View.newGroup, View.newEntry, View.getGroup, View.getEntry, View.defGroup, View.defEntry]
  repeat' split
  all_goals rfl

@[simp] theorem View.updGentries_ereg (V : View) (p : Nat) (f : List Nat → List Nat) : (V.updGentries p f).ereg = V.ereg := by
  simp only [View.updParent, View.updChildren, View.updGentries, View.updEgroup, View.cleanupParent, View.setParent, View.setRootGroup, View.setGroup, View.newGroup, View.newEntry, View.getGroup, View.getEntry, View.defGroup, View.defEntry]
  repeat' split
  all_goals rfl

@[simp] theorem View.updGentries_gdefs (V : View) (p : Nat) (f : List Nat → List Nat) : (V.updGentries p f).gdefs = V.gdefs := by
  simp only [View.updParent, View.updChildren, View.updGentries, View.updEgroup, View.cleanupParent, View.setParent, View.setRootGroup, View.setGroup, View.newGroup, View.newEntry, View.getGroup, View.getEntry, View.defGroup, View.defEntry]
  repeat' split
  all_goals rfl

@[simp] theorem View.updGentries_edefs (V : View) (p : Nat) (f : List Nat → List Nat) : (V.updGentries p f).edefs = V.edefs := by
  simp only [View.updParent, View.updChildren, View.updGentries, View.updEgroup, View.cleanupParent, View.setParent, View.setRootGroup, View.setGroup, View.newGroup, View.newEntry, View.getGroup, View.getEntry, View.defGroup, View.defEntry]
  repeat' split
  all_goals rfl

@[simp] theorem View.updGentries_tp (V : View) (p : Nat) (f : List Nat → List Nat) : (V.updGentries p f).tp = V.tp := by
  simp only [View.updParent, View.updChildren, View.updGentries, View.updEgroup, View.cleanupParent, View.setParent, View.setRootGroup, View.setGroup, View.newGroup, View.newEntry, View.getGroup, View.getEntry, View.defGroup, View.defEntry]
  repeat' split
  all_goals rfl

@[simp] theorem View.updGentries_glen (V : View) (p : Nat) (f : List Nat → List Nat) : (V.updGentries p f).glen = V.glen := by
  simp only [View.updParent, View.updChildren, View.updGentries, View.updEgroup, View.cleanupParent, View.setParent, View.setRootGroup, View.setGroup, View.newGroup, View.newEntry, View.getGroup, View.getEntry, View.defGroup, View.defEntry]
  repeat' split
  all_goals rfl

@[simp] theorem View.updGentries_elen (V : View) (p : Nat) (f : List Nat → List Nat) : (V.updGentries p f).elen = V.elen := by
  simp only [View.updParent, View.updChildren, View.updGentries, View.updEgroup, View.cleanupParent, View.setParent, View.setRootGroup, View.setGroup, View.newGroup, View.newEntry, View.getGroup, View.getEntry, View.defGroup, View.defEntry]
  repeat' split
  all_goals rfl

@[simp] theorem View.updGentries_root (V : View) (p : Nat) (f : List Nat → List Nat) : (V.updGentries p f).root = V.root := by
  simp only [View.updParent, View.updChildren, View.updGentries, View.updEgroup, View.cleanupParent, View.setParent, View.setRootGroup, View.setGroup, View.newGroup, View.newEntry, View.getGroup, View.getEntry, View.defGroup, View.defEntry]
  repeat' split
  all_goals rfl

@[simp] theorem View.updEgroup_parent (V : View) (e : Nat) (x : Option Nat) : (V.updEgroup e x).parent = V.parent := by
  simp only [View.updParent, View.updChildren, View.updGentries, View.updEgroup, View.cleanupParent, View.setParent, View.setRootGroup, View.setGroup, View.newGroup, View.newEntry, View.getGroup, View.getEntry, View.defGroup, View.defEntry]
  repeat' split
  all_goals rfl

@[simp] theorem View.updEgroup_children (V : View) (e : Nat) (x : Option Nat) : (V.updEgroup e x).children = V.children := by
  simp only [View.updParent, View.updChildren, View.updGentries, View.updEgroup, View.cleanupParent, View.setParent, View.setRootGroup, View.setGroup, View.newGroup, View.newEntry, View.getGroup, View.getEntry, View.defGroup, View.defEntry]
  repeat' split
  all_goals rfl

@[simp] theorem View.updEgroup_gentries (V : View) (e : Nat) (x : Option Nat) : (V.updEgroup e x).gentries = V.gentries := by
  simp only [View.updParent, View.updChildren, View.updGentries, View.updEgroup, View.cleanupParent, View.setParent, View.setRootGroup, View.setGroup, View.newGroup, View.newEntry, View.getGroup, View.getEntry, View.defGroup, View.defEntry]
  repeat' split
  all_goals rfl

@[simp] theorem View.updEgroup_reg (V : View) (e : Nat) (x : Option Nat) : (V.updEgroup e x).reg = V.reg := by
  simp only [View.updParent, View.updChildren, View.updGentries, View.updEgroup, View.cleanupParent, View.setParent, View.setRootGroup, View.setGroup, View.newGroup, View.newEntry, View.getGroup, View.getEntry, View.defGroup, View.defEntry]
  repeat' split
  all_goals rfl

@[simp] theorem View.updEgroup_ereg (V : View) (e : Nat) (x : Option Nat) : (V.updEgroup e x).ereg = V.ereg := by
  simp only [View.updParent, View.updChildren, View.updGentries, View.updEgroup, View.cleanupParent, View.setParent, View.setRootGroup, View.setGroup, View.newGroup, View.newEntry, View.getGroup, View.getEntry, View.defGroup, View.defEntry]
  repeat' split
  all_goals rfl

@[simp] theorem View.updEgroup_gdefs (V : View) (e : Nat) (x : Option Nat) : (V.updEgroup e x).gdefs = V.gdefs := by
  simp only [View.updParent, View.updChildren, View.updGentries, View.updEgroup, View.cleanupParent, View.setParent, View.setRootGroup, View.setGroup, View.newGroup, View.newEntry, View.getGroup, View.getEntry, View.defGroup, View.defEntry]
  repeat' split
  all_goals rfl

@[simp] theorem View.updEgroup_edefs (V : View) (e : Nat) (x : Option Nat) : (V.updEgroup e x).edefs = V.edefs := by
  simp only [View.updParent, View.updChildren, View.updGentries, View.updEgroup, View.cleanupParent, View.setParent, View.setRootGroup, View.setGroup, View.newGroup, View.newEntry, View.getGroup, View.getEntry, View.defGroup, View.defEntry]
  repeat' split
  all_goals rfl

@[simp] theorem View.updEgroup_tp (V : View) (e : Nat) (x : Option Nat) : (V.updEgroup e x).tp = V.tp := by
  simp only [View.updParent, View.updChildren, View.updGentries, View.updEgroup, View.cleanupParent, View.setParent, View.setRootGroup, View.setGroup, View.newGroup, View.newEntry, View.getGroup, View.getEntry, View.defGroup, View.defEntry]
  repeat' split
  all_goals rfl

@[simp] theorem View.updEgroup_glen (V : View) (e : Nat) (x : Option Nat) : (V.updEgroup e x).glen = V.glen := by
  simp only [View.updParent, View.updChildren, View.updGentries, View.updEgroup, View.cleanupParent, View.setParent, View.setRootGroup, View.setGroup, View.newGroup, View.newEntry, View.getGroup, View.getEntry, View.defGroup, View.defEntry]
  repeat' split
  all_goals rfl

@[simp] theorem View.updEgroup_elen (V : View) (e : Nat) (x : Option Nat) : (V.updEgroup e x).elen = V.elen := by
  simp only [View.updParent, View.updChildren, View.updGentries, View.updEgroup, View.cleanupParent, View.setParent, View.setRootGroup, View.setGroup, View.newGroup, View.newEntry, View.getGroup, View.getEntry, View.defGroup, View.defEntry]
  repeat' split
  all_goals rfl

@[simp] theorem View.updEgroup_root (V : View) (e : Nat) (x : Option Nat) : (V.updEgroup e x).root = V.root := by
  simp only [View.updParent, View.updChildren, View.updGentries, View.updEgroup, View.cleanupParent, View.setParent, View.setRootGroup, View.setGroup, View.newGroup, View.newEntry, View.getGroup, View.getEntry, View.defGroup, View.defEntry]
  repeat' split
  all_goals rfl

@[simp] theorem View.cleanupParent_parent (V : View) (c : Nat) : (V.cleanupParent c).parent = V.parent := by
  simp only [View.updParent, View.updChildren, View.updGentries, View.updEgroup, View.cleanupParent, View.setParent, View.setRootGroup, View.setGroup, View.newGroup, View.newEntry, View.getGroup, View.getEntry, View.defGroup, View.defEntry]
  repeat' split
  all_goals rfl

@[simp] theorem View.cleanupParent_gentries (V : View) (c : Nat) : (V.cleanupParent c).gentries = V.gentries := by
  simp only [View.updParent, View.updChildren, View.updGentries, View.updEgroup, View.cleanupParent, View.setParent, View.setRootGroup, View.setGroup, View.newGroup, View.newEntry, View.getGroup, View.getEntry, View.defGroup, View.defEntry]
  repeat' split
  all_goals rfl

@[simp] theorem View.cleanupParent_egroup (V : View) (c : Nat) : (V.cleanupParent c).egroup = V.egroup := by
  simp only [View.updParent, View.updChildren, View.updGentries, View.updEgroup, View.cleanupParent, View.setParent, View.setRootGroup, View.setGroup, View.newGroup, View.newEntry, View.getGroup, View.getEntry, View.defGroup, View.defEntry]
  repeat' split
  all_goals rfl

@[simp] theorem View.cleanupParent_reg (V : View) (c : Nat) : (V.cleanupParent c).reg = V.reg := by
  simp only [View.updParent, View.updChildren, View.updGentries, View.updEgroup, View.cleanupParent, View.setParent, View.setRootGroup, View.setGroup, View.newGroup, View.newEntry, View.getGroup, View.getEntry, View.defGroup, View.defEntry]
  repeat' split
  all_goals rfl

@[simp] theorem View.cleanupParent_ereg (V : View) (c : Nat) : (V.cleanupParent c).ereg = V.ereg := by
  simp only [View.updParent, View.updChildren, View.updGentries, View.updEgroup, View.cleanupParent, View.setParent, View.setRootGroup, View.setGroup, View.newGroup, View.newEntry, View.getGroup, View.getEntry, View.defGroup, View.defEntry]
  repeat' split
  all_goals rfl

@[simp] theorem View.cleanupParent_gdefs (V : View) (c : Nat) : (V.cleanupParent c).gdefs = V.gdefs := by
  simp only [View.updParent, View.updChildren, View.updGentries, View.updEgroup, View.cleanupParent, View.setParent, View.setRootGroup, View.setGroup, View.newGroup, View.newEntry, View.getGroup, View.getEntry, View.defGroup, View.defEntry]
  repeat' split
  all_goals rfl

@[simp] theorem View.cleanupParent_edefs (V : View) (c : Nat) : (V.cleanupParent c).edefs = V.edefs := by
  simp only [View.updParent, View.updChildren, View.updGentries, View.updEgroup, View.cleanupParent, View.setParent, View.setRootGroup, View.setGroup, View.newGroup, View.newEntry, View.getGroup, View.getEntry, View.defGroup, View.defEntry]
  repeat' split
  all_goals rfl

@[simp] theorem View.cleanupParent_tp (V : View) (c : Nat) : (V.cleanupParent c).tp = V.tp := by
  simp only [View.updParent, View.updChildren, View.updGentries, View.updEgroup, View.cleanupParent, View.setParent, View.setRootGroup, View.setGroup, View.newGroup, View.newEntry, View.getGroup, View.getEntry, View.defGroup, View.defEntry]
  repeat' split
  all_goals rfl

@[simp] theorem View.cleanupParent_glen (V : View) (c : Nat) : (V.cleanupParent c).glen = V.glen := by
  simp only [View.updParent, View.updChildren, View.updGentries, View.updEgroup, View.cleanupParent, View.setParent, View.setRootGroup, View.setGroup, View.newGroup, View.newEntry, View.getGroup, View.getEntry, View.defGroup, View.defEntry]
  repeat' split
  all_goals rfl

@[simp] theorem View.cleanupParent_elen (V : View) (c : Nat) : (V.cleanupParent c).elen = V.elen := by
  simp only [View.updParent, View.updChildren, View.updGentries, View.updEgroup, View.cleanupParent, View.setParent, View.setRootGroup, View.setGroup, View.newGroup, View.newEntry, View.getGroup, View.getEntry, View.defGroup, View.defEntry]
  repeat' split
  all_goals rfl

@[simp] theorem View.cleanupParent_root (V : View) (c : Nat) : (V.cleanupParent c).root = V.root := by
  simp only [View.updParent, View.updChildren, View.updGentries, View.updEgroup, View.cleanupParent, View.setParent, View.setRootGroup, View.setGroup, View.newGroup, View.newEntry, View.getGroup, View.getEntry, View.defGroup, View.defEntry]
  repeat' split
  all_goals rfl

@[simp] theorem View.setParent_gentries (V : View) (c p : Nat) : (V.setParent c p).gentries = V.gentries := by
  simp only [View.updParent, View.updChildren, View.updGentries, View.updEgroup, View.cleanupParent, View.setParent, View.setRootGroup, View.setGroup, View.newGroup, View.newEntry, View.getGroup, View.getEntry, View.defGroup, View.defEntry]
  repeat' split
  all_goals rfl

@[simp] theorem View.setParent_egroup (V : View) (c p : Nat) : (V.setParent c p).egroup = V.egroup := by
  simp only [View.updParent, View.updChildren, View.updGentries, View.updEgroup, View.cleanupParent, View.setParent, View.setRootGroup, View.setGroup, View.newGroup, View.newEntry, View.getGroup, View.getEntry, View.defGroup, View.defEntry]
  repeat' split
  all_goals rfl

@[simp] theorem View.setParent_reg (V : View) (c p : Nat) : (V.setParent c p).reg = V.reg := by
  simp only [View.updParent, View.updChildren, View.updGentries, View.updEgroup, View.cleanupParent, View.setParent, View.setRootGroup, View.setGroup, View.newGroup, View.newEntry, View.getGroup, View.getEntry, View.defGroup, View.defEntry]
  repeat' split
  all_goals rfl

@[simp] theorem View.setParent_ereg (V : View) (c p : Nat) : (V.setParent c p).ereg = V.ereg := by
  simp only [View.updParent, View.updChildren, View.updGentries, View.updEgroup, View.cleanupParent, View.setParent, View.setRootGroup, View.setGroup, View.newGroup, View.newEntry, View.getGroup, View.getEntry, View.defGroup, View.defEntry]
  repeat' split
  all_goals rfl

@[simp] theorem View.setParent_gdefs (V : View) (c p : Nat) : (V.setParent c p).gdefs = V.gdefs := by
  simp only [View.updParent, View.updChildren, View.updGentries, View.updEgroup, View.cleanupParent, View.setParent, View.setRootGroup, View.setGroup, View.newGroup, View.newEntry, View.getGroup, View.getEntry, View.defGroup, View.defEntry]
  repeat' split
  all_goals rfl

@[simp] theorem View.setParent_edefs (V : View) (c p : Nat) : (V.setParent c p).edefs = V.edefs := by
  simp only [View.updParent, View.updChildren, View.updGentries, View.updEgroup, View.cleanupParent, View.setParent, View.setRootGroup, View.setGroup, View.newGroup, View.newEntry, View.getGroup, View.getEntry, View.defGroup, View.defEntry]
  repeat' split
  all_goals rfl

@[simp] theorem View.setParent_tp (V : View) (c p : Nat) : (V.setParent c p).tp = V.tp := by
  simp only [View.updParent, View.updChildren, View.updGentries, View.updEgroup, View.cleanupParent, View.setParent, View.setRootGroup, View.setGroup, View.newGroup, View.newEntry, View.getGroup, View.getEntry, View.defGroup, View.defEntry]
  repeat' split
  all_goals rfl

@[simp] theorem View.setParent_glen (V : View) (c p : Nat) : (V.setParent c p).glen = V.glen := by
  simp only [View.updParent, View.updChildren, View.updGentries, View.updEgroup, View.cleanupParent, View.setParent, View.setRootGroup, View.setGroup, View.newGroup, View.newEntry, View.getGroup, View.getEntry, View.defGroup, View.defEntry]
  repeat' split
  all_goals rfl

@[simp] theorem View.setParent_elen (V : View) (c p : Nat) : (V.setParent c p).elen = V.elen := by
  simp only [View.updParent, View.updChildren, View.updGentries, View.updEgroup, View.cleanupParent, View.setParent, View.setRootGroup, View.setGroup, View.newGroup, View.newEntry, View.getGroup, View.getEntry, View.defGroup, View.defEntry]
  repeat' split
  all_goals rfl

@[simp] theorem View.setParent_root (V : View) (c p : Nat) : (V.setParent c p).root = V.root := by
  simp only [View.updParent, View.updChildren, View.updGentries, View.updEgroup, View.cleanupParent, View.setParent, View.setRootGroup, View.setGroup, View.newGroup, View.newEntry, View.getGroup, View.getEntry, View.defGroup, View.defEntry]
  repeat' split
  all_goals rfl

@[simp] theorem View.setRootGroup_gentries (V : View) (p : Nat) : (V.setRootGroup p).gentries = V.gentries := by
  simp only [View.updParent, View.updChildren, View.updGentries, View.updEgroup, View.cleanupParent, View.setParent, View.setRootGroup, View.setGroup, View.newGroup, View.newEntry, View.getGroup, View.getEntry, View.defGroup, View.defEntry]
  repeat' split
  all_goals rfl

@[simp] theorem View.setRootGroup_egroup (V : View) (p : Nat) : (V.setRootGroup p).egroup = V.egroup := by
  simp only [View.updParent, View.updChildren, View.updGentries, View.updEgroup, View.cleanupParent, View.setParent, View.setRootGroup, View.setGroup, View.newGroup, View.newEntry, View.getGroup, View.getEntry, View.defGroup, View.defEntry]
  repeat' split
  all_goals rfl

@[simp] theorem View.setRootGroup_reg (V : View) (p : Nat) : (V.setRootGroup p).reg = V.reg := by
  simp only [View.updParent, View.updChildren, View.updGentries, View.updEgroup, View.cleanupParent, View.setParent, View.setRootGroup, View.setGroup, View.newGroup, View.newEntry, View.getGroup, View.getEntry, View.defGroup, View.defEntry]
  repeat' split
  all_goals rfl

@[simp] theorem View.setRootGroup_ereg (V : View) (p : Nat) : (V.setRootGroup p).ereg = V.ereg := by
  simp only [View.updParent, View.updChildren, View.updGentries, View.updEgroup, View.cleanupParent, View.setParent, View.setRootGroup, View.setGroup, View.newGroup, View.newEntry, View.getGroup, View.getEntry, View.defGroup, View.defEntry]
  repeat' split
  all_goals rfl

@[simp] theorem View.setRootGroup_gdefs (V : View) (p : Nat) : (V.setRootGroup p).gdefs = V.gdefs := by
  simp only [View.updParent, View.updChildren, View.updGentries, View.updEgroup, View.cleanupParent, View.setParent, View.setRootGroup, View.setGroup, View.newGroup, View.newEntry, View.getGroup, View.getEntry, View.defGroup, View.defEntry]
  repeat' split
  all_goals rfl

@[simp] theorem View.setRootGroup_edefs (V : View) (p : Nat) : (V.setRootGroup p).edefs = V.edefs := by
  simp only [View.updParent, View.updChildren, View.updGentries, View.updEgroup, View.cleanupParent, View.setParent, View.setRootGroup, View.setGroup, View.newGroup, View.newEntry, View.getGroup, View.getEntry, View.defGroup, View.defEntry]
  repeat' split
  all_goals rfl

@[simp] theorem View.setRootGroup_tp (V : View) (p : Nat) : (V.setRootGroup p).tp = V.tp := by
  simp only [View.updParent, View.updChildren, View.updGentries, View.updEgroup, View.cleanupParent, View.setParent, View.setRootGroup, View.setGroup, View.newGroup, View.newEntry, View.getGroup, View.getEntry, View.defGroup, View.defEntry]
  repeat' split
  all_goals rfl

@[simp] theorem View.setRootGroup_glen (V : View) (p : Nat) : (V.setRootGroup p).glen = V.glen := by
  simp only [View.updParent, View.updChildren, View.updGentries, View.updEgroup, View.cleanupParent, View.setParent, View.setRootGroup, View.setGroup, View.newGroup, View.newEntry, View.getGroup, View.getEntry, View.defGroup, View.defEntry]
  repeat' split
  all_goals rfl

@[simp] theorem View.setRootGroup_elen (V : View) (p : Nat) : (V.setRootGroup p).elen = V.elen := by
  simp only [View.updParent, View.updChildren, View.updGentries, View.updEgroup, View.cleanupParent, View.setParent, View.setRootGroup, View.setGroup, View.newGroup, View.newEntry, View.getGroup, View.getEntry, View.defGroup, View.defEntry]
  repeat' split
  all_goals rfl

@[simp] theorem View.setGroup_parent (V : View) (e p : Nat) : (V.setGroup e p).parent = V.parent := by
  simp only [View.updParent, View.updChildren, View.updGentries, View.updEgroup, View.cleanupParent, View.setParent, View.setRootGroup, View.setGroup, View.newGroup, View.newEntry, View.getGroup, View.getEntry, View.defGroup, View.defEntry]
  repeat' split
  all_goals rfl

@[simp] theorem View.setGroup_children (V : View) (e p : Nat) : (V.setGroup e p).children = V.children := by
  simp only [View.updParent, View.updChildren, View.updGentries, View.updEgroup, View.cleanupParent, View.setParent, View.setRootGroup, View.setGroup, View.newGroup, View.newEntry, View.getGroup, View.getEntry, View.defGroup, View.defEntry]
  repeat' split
  all_goals rfl

@[simp] theorem View.setGroup_reg (V : View) (e p : Nat) : (V.setGroup e p).reg = V.reg := by
  simp only [View.updParent, View.updChildren, View.updGentries, View.updEgroup, View.cleanupParent, View.setParent, View.setRootGroup, View.setGroup, View.newGroup, View.newEntry, View.getGroup, View.getEntry, View.defGroup, View.defEntry]
  repeat' split
  all_goals rfl

@[simp] theorem View.setGroup_ereg (V : View) (e p : Nat) : (V.setGroup e p).ereg = V.ereg := by
  simp only [View.updParent, View.updChildren, View.updGentries, View.updEgroup, View.cleanupParent, View.setParent, View.setRootGroup, View.setGroup, View.newGroup, View.newEntry, View.getGroup, View.getEntry, View.defGroup, View.defEntry]
  repeat' split
  all_goals rfl

@[simp] theorem View.setGroup_gdefs (V : View) (e p : Nat) : (V.setGroup e p).gdefs = V.gdefs := by
  simp only [View.updParent, View.updChildren, View.updGentries, View.updEgroup, View.cleanupParent, View.setParent, View.setRootGroup, View.setGroup, View.newGroup, View.newEntry, View.getGroup, View.getEntry, View.defGroup, View.defEntry]
  repeat' split
  all_goals rfl

@[simp] theorem View.setGroup_edefs (V : View) (e p : Nat) : (V.setGroup e p).edefs = V.edefs := by
  simp only [View.updParent, View.updChildren, View.updGentries, View.updEgroup, View.cleanupParent, View.setParent, View.setRootGroup, View.setGroup, View.newGroup, View.newEntry, View.getGroup, View.getEntry, View.defGroup, View.defEntry]
  repeat' split
  all_goals rfl

@[simp] theorem View.setGroup_tp (V : View) (e p : Nat) : (V.setGroup e p).tp = V.tp := by
  simp only [View.updParent, View.updChildren, View.updGentries, View.updEgroup, View.cleanupParent, View.setParent, View.setRootGroup, View.setGroup, View.newGroup, View.newEntry, View.getGroup, View.getEntry, View.defGroup, View.defEntry]
  repeat' split
  all_goals rfl

@[simp] theorem View.setGroup_glen (V : View) (e p : Nat) : (V.setGroup e p).glen = V.glen := by
  simp only [View.updParent, View.updChildren, View.updGentries, View.updEgroup, View.cleanupParent, View.setParent, View.setRootGroup, View.setGroup, View.newGroup, View.newEntry, View.getGroup, View.getEntry, View.defGroup, View.defEntry]
  repeat' split
  all_goals rfl

@[simp] theorem View.setGroup_elen (V : View) (e p : Nat) : (V.setGroup e p).elen = V.elen := by
  simp only [View.updParent, View.updChildren, View.updGentries, View.updEgroup, View.cleanupParent, View.setParent, View.setRootGroup, View.setGroup, View.newGroup, View.newEntry, View.getGroup, View.getEntry, View.defGroup, View.defEntry]
  repeat' split
  all_goals rfl

@[simp] theorem View.setGroup_root (V : View) (e p : Nat) : (V.setGroup e p).root = V.root := by
  simp only [View.updParent, View.updChildren, View.updGentries, View.updEgroup, View.cleanupParent, View.setParent, View.setRootGroup, View.setGroup, View.newGroup, View.newEntry, View.getGroup, View.getEntry, View.defGroup, View.defEntry]
  repeat' split
  all_goals rfl

@[simp] theorem View.newGroup_parent (V : View) : (V.newGroup).parent = V.parent := by
  simp only [View.updParent, View.updChildren, View.updGentries, View.updEgroup, View.cleanupParent, View.setParent, View.setRootGroup, View.setGroup, View.newGroup, View.newEntry, View.getGroup, View.getEntry, View.defGroup, View.defEntry]
  repeat' split
  all_goals rfl

@[simp] theorem View.newGroup_children (V : View) : (V.newGroup).children = V.children := by
  simp only [View.updParent, View.updChildren, View.updGentries, View.updEgroup, View.cleanupParent, View.setParent, View.setRootGroup, View.setGroup, View.newGroup, View.newEntry, View.getGroup, View.getEntry, View.defGroup, View.defEntry]
  repeat' split
  all_goals rfl

@[simp] theorem View.newGroup_gentries (V : View) : (V.newGroup).gentries = V.gentries := by
  simp only [View.updParent, View.updChildren, View.updGentries, View.updEgroup, View.cleanupParent, View.setParent, View.setRootGroup, View.setGroup, View.newGroup, View.newEntry, View.getGroup, View.getEntry, View.defGroup, View.defEntry]
  repeat' split
  all_goals rfl

@[simp] theorem View.newGroup_egroup (V : View) : (V.newGroup).egroup = V.egroup := by
  simp only [View.updParent, View.updChildren, View.updGentries, View.updEgroup, View.cleanupParent, View.setParent, View.setRootGroup, View.setGroup, View.newGroup, View.newEntry, View.getGroup, View.getEntry, View.defGroup, View.defEntry]
  repeat' split
  all_goals rfl

@[simp] theorem View.newGroup_reg (V : View) : (V.newGroup).reg = V.reg := by
  simp only [View.updParent, View.updChildren, View.updGentries, View.updEgroup, View.cleanupParent, View.setParent, View.setRootGroup, View.setGroup, View.newGroup, View.newEntry, View.getGroup, View.getEntry, View.defGroup, View.defEntry]
  repeat' split
  all_goals rfl

@[simp] theorem View.newGroup_ereg (V : View) : (V.newGroup).ereg = V.ereg := by
  simp only [View.updParent, View.updChildren, View.updGentries, View.updEgroup, View.cleanupParent, View.setParent, View.setRootGroup, View.setGroup, View.newGroup, View.newEntry, View.getGroup, View.getEntry, View.defGroup, View.defEntry]
  repeat' split
  all_goals rfl

@[simp] theorem View.newGroup_gdefs (V : View) : (V.newGroup).gdefs = V.gdefs := by
  simp only [View.updParent, View.updChildren, View.updGentries, View.updEgroup, View.cleanupParent, View.setParent, View.setRootGroup, View.setGroup, View.newGroup, View.newEntry, View.getGroup, View.getEntry, View.defGroup, View.defEntry]
  repeat' split
  all_goals rfl

@[simp] theorem View.newGroup_edefs (V : View) : (V.newGroup).edefs = V.edefs := by
  simp only [View.updParent, View.updChildren, View.updGentries, View.updEgroup, View.cleanupParent, View.setParent, View.setRootGroup, View.setGroup, View.newGroup, View.newEntry, View.getGroup, View.getEntry, View.defGroup, View.defEntry]
  repeat' split
  all_goals rfl

@[simp] theorem View.newGroup_tp (V : View) : (V.newGroup).tp = V.tp := by
  simp only [View.updParent, View.updChildren, View.updGentries, View.updEgroup, View.cleanupParent, View.setParent, View.setRootGroup, View.setGroup, View.newGroup, View.newEntry, View.getGroup, View.getEntry, View.defGroup, View.defEntry]
  repeat' split
  all_goals rfl

@[simp] theorem View.newGroup_elen (V : View) : (V.newGroup).elen = V.elen := by
  simp only [View.updParent, View.updChildren, View.updGentries, View.updEgroup, View.cleanupParent, View.setParent, View.setRootGroup, View.setGroup, View.newGroup, View.newEntry, View.getGroup, View.getEntry, View.defGroup, View.defEntry]
  repeat' split
  all_goals rfl

@[simp] theorem View.newGroup_root (V : View) : (V.newGroup).root = V.root := by
  simp only [View.updParent, View.updChildren, View.updGentries, View.updEgroup, View.cleanupParent, View.setParent, View.setRootGroup, View.setGroup, View.newGroup, View.newEntry, View.getGroup, View.getEntry, View.defGroup, View.defEntry]
  repeat' split
  all_goals rfl

@[simp] theorem View.newEntry_parent (V : View) : (V.newEntry).parent = V.parent := by
  simp only [View.updParent, View.updChildren, View.updGentries, View.updEgroup, View.cleanupParent, View.setParent, View.setRootGroup, View.setGroup, View.newGroup, View.newEntry, View.getGroup, View.getEntry, View.defGroup, View.defEntry]
  repeat' split
  all_goals rfl

@[simp] theorem View.newEntry_children (V : View) : (V.newEntry).children = V.children := by
  simp only [View.updParent, View.updChildren, View.updGentries, View.updEgroup, View.cleanupParent, View.setParent, View.setRootGroup, View.setGroup, View.newGroup, View.newEntry, View.getGroup, View.getEntry, View.defGroup, View.defEntry]
  repeat' split
  all_goals rfl

@[simp] theorem View.newEntry_gentries (V : View) : (V.newEntry).gentries = V.gentries := by
  simp only [View.updParent, View.updChildren, View.updGentries, View.updEgroup, View.cleanupParent, View.setParent, View.setRootGroup, View.setGroup, View.newGroup, View.newEntry, View.getGroup, View.getEntry, View.defGroup, View.defEntry]
  repeat' split
  all_goals rfl

@[simp] theorem View.newEntry_egroup (V : View) : (V.newEntry).egroup = V.egroup := by
  simp only [View.updParent, View.updChildren, View.updGentries, View.updEgroup, View.cleanupParent, View.setParent, View.setRootGroup, View.setGroup, View.newGroup, View.newEntry, View.getGroup, View.getEntry, View.defGroup, View.defEntry]
  repeat' split
  all_goals rfl

@[simp] theorem View.newEntry_reg (V : View) : (V.newEntry).reg = V.reg := by
  simp only [View.updParent, View.updChildren, View.updGentries, View.updEgroup, View.cleanupParent, View.setParent, View.setRootGroup, View.setGroup, View.newGroup, View.newEntry, View.getGroup, View.getEntry, View.defGroup, View.defEntry]
  repeat' split
  all_goals rfl

@[simp] theorem View.newEntry_ereg (V : View) : (V.newEntry).ereg = V.ereg := by
  simp only [View.updParent, View.updChildren, View.updGentries, View.updEgroup, View.cleanupParent, View.setParent, View.setRootGroup, View.setGroup, View.newGroup, View.newEntry, View.getGroup, View.getEntry, View.defGroup, View.defEntry]
  repeat' split
  all_goals rfl

@[simp] theorem View.newEntry_gdefs (V : View) : (V.newEntry).gdefs = V.gdefs := by
  simp only [View.updParent, View.updChildren, View.updGentries, View.updEgroup, View.cleanupParent, View.setParent, View.setRootGroup, View.setGroup, View.newGroup, View.newEntry, View.getGroup, View.getEntry, View.defGroup, View.defEntry]
  repeat' split
  all_goals rfl

@[simp] theorem View.newEntry_edefs (V : View) : (V.newEntry).edefs = V.edefs := by
  simp only [View.updParent, View.updChildren, View.updGentries, View.updEgroup, View.cleanupParent, View.setParent, View.setRootGroup, View.setGroup, View.newGroup, View.newEntry, View.getGroup, View.getEntry, View.defGroup, View.defEntry]
  repeat' split
  all_goals rfl

@[simp] theorem View.newEntry_tp (V : View) : (V.newEntry).tp = V.tp := by
  simp only [View.updParent, View.updChildren, View.updGentries, View.updEgroup, View.cleanupParent, View.setParent, View.setRootGroup, View.setGroup, View.newGroup, View.newEntry, View.getGroup, View.getEntry, View.defGroup, View.defEntry]
  repeat' split
  all_goals rfl

@[simp] theorem View.newEntry_glen (V : View) : (V.newEntry).glen = V.glen := by
  simp only [View.updParent, View.updChildren, View.updGentries, View.updEgroup, View.cleanupParent, View.setParent, View.setRootGroup, View.setGroup, View.newGroup, View.newEntry, View.getGroup, View.getEntry, View.defGroup, View.defEntry]
  repeat' split
  all_goals rfl

@[simp] theorem View.newEntry_root (V : View) : (V.newEntry).root = V.root := by
  simp only [View.updParent, View.updChildren, View.updGentries, View.updEgroup, View.cleanupParent, View.setParent, View.setRootGroup, View.setGroup, View.newGroup, View.newEntry, View.getGroup, View.getEntry, View.defGroup, View.defEntry]
  repeat' split
  all_goals rfl

@[simp] theorem View.getGroup_gentries (V : View) (u : Uuid) : (V.getGroup u).gentries = V.gentries := by
  simp only [View.updParent, View.updChildren, View.updGentries, View.updEgroup, View.cleanupParent, View.setParent, View.setRootGroup, View.setGroup, View.newGroup, View.newEntry, View.getGroup, View.getEntry, View.defGroup, View.defEntry]
  repeat' split
  all_goals rfl

@[simp] theorem View.getGroup_egroup (V : View) (u : Uuid) : (V.getGroup u).egroup = V.egroup := by
  simp only [View.updParent, View.updChildren, View.updGentries, View.updEgroup, View.cleanupParent, View.setParent, View.setRootGroup, View.setGroup, View.newGroup, View.newEntry, View.getGroup, View.getEntry, View.defGroup, View.defEntry]
  repeat' split
  all_goals rfl

@[simp] theorem View.getGroup_ereg (V : View) (u : Uuid) : (V.getGroup u).ereg = V.ereg := by
  simp only [View.updParent, View.updChildren, View.updGentries, View.updEgroup, View.cleanupParent, View.setParent, View.setRootGroup, View.setGroup, View.newGroup, View.newEntry, View.getGroup, View.getEntry, View.defGroup, View.defEntry]
  repeat' split
  all_goals rfl

@[simp] theorem View.getGroup_gdefs (V : View) (u : Uuid) : (V.getGroup u).gdefs = V.gdefs := by
  simp only [View.updParent, View.updChildren, View.updGentries, View.updEgroup, View.cleanupParent, View.setParent, View.setRootGroup, View.setGroup, View.newGroup, View.newEntry, View.getGroup, View.getEntry, View.defGroup, View.defEntry]
  repeat' split
  all_goals rfl

@[simp] theorem View.getGroup_edefs (V : View) (u : Uuid) : (V.getGroup u).edefs = V.edefs := by
  simp only [View.updParent, View.updChildren, View.updGentries, View.updEgroup, View.cleanupParent, View.setParent, View.setRootGroup, View.setGroup, View.newGroup, View.newEntry, View.getGroup, View.getEntry, View.defGroup, View.defEntry]
  repeat' split
  all_goals rfl

@[simp] theorem View.getGroup_tp (V : View) (u : Uuid) : (V.getGroup u).tp = V.tp := by
  simp only [View.updParent, View.updChildren, View.updGentries, View.updEgroup, View.cleanupParent, View.setParent, View.setRootGroup, View.setGroup, View.newGroup, View.newEntry, View.getGroup, View.getEntry, View.defGroup, View.defEntry]
  repeat' split
  all_goals rfl

@[simp] theorem View.getGroup_elen (V : View) (u : Uuid) : (V.getGroup u).elen = V.elen := by
  simp only [View.updParent, View.updChildren, View.updGentries, View.updEgroup, View.cleanupParent, View.setParent, View.setRootGroup, View.setGroup, View.newGroup, View.newEntry, View.getGroup, View.getEntry, View.defGroup, View.defEntry]
  repeat' split
  all_goals rfl

@[simp] theorem View.getGroup_root (V : View) (u : Uuid) : (V.getGroup u).root = V.root := by
  simp only [View.updParent, View.updChildren, View.updGentries, View.updEgroup, View.cleanupParent, View.setParent, View.setRootGroup, View.setGroup, View.newGroup, View.newEntry, View.getGroup, View.getEntry, View.defGroup, View.defEntry]
  repeat' split
  all_goals rfl

@[simp] theorem View.getEntry_parent (V : View) (u : Uuid) : (V.getEntry u).parent = V.parent := by
  simp only [View.updParent, View.updChildren, View.updGentries, View.updEgroup, View.cleanupParent, View.setParent, View.setRootGroup, View.setGroup, View.newGroup, View.newEntry, View.getGroup, View.getEntry, View.defGroup, View.defEntry]
  repeat' split
  all_goals rfl

@[simp] theorem View.getEntry_children (V : View) (u : Uuid) : (V.getEntry u).children = V.children := by
  simp only [View.updParent, View.updChildren, View.updGentries, View.updEgroup, View.cleanupParent, View.setParent, View.setRootGroup, View.setGroup, View.newGroup, View.newEntry, View.getGroup, View.getEntry, View.defGroup, View.defEntry]
  repeat' split
  all_goals rfl

@[simp] theorem View.getEntry_reg (V : View) (u : Uuid) : (V.getEntry u).reg = V.reg := by
  simp only [View.updParent, View.updChildren, View.updGentries, View.updEgroup, View.cleanupParent, View.setParent, View.setRootGroup, View.setGroup, View.newGroup, View.newEntry, View.getGroup, View.getEntry, View.defGroup, View.defEntry]
  repeat' split
  all_goals rfl

@[simp] theorem View.getEntry_gdefs (V : View) (u : Uuid) : (V.getEntry u).gdefs = V.gdefs := by
  simp only [View.updParent, View.updChildren, View.updGentries, View.updEgroup, View.cleanupParent, View.setParent, View.setRootGroup, View.setGroup, View.newGroup, View.newEntry, View.getGroup, View.getEntry, View.defGroup, View.defEntry]
  repeat' split
  all_goals rfl

@[simp] theorem View.getEntry_edefs (V : View) (u : Uuid) : (V.getEntry u).edefs = V.edefs := by
  simp only [View.updParent, View.updChildren, View.updGentries, View.updEgroup, View.cleanupParent, View.setParent, View.setRootGroup, View.setGroup, View.newGroup, View.newEntry, View.getGroup, View.getEntry, View.defGroup, View.defEntry]
  repeat' split
  all_goals rfl

@[simp] theorem View.getEntry_tp (V : View) (u : Uuid) : (V.getEntry u).tp = V.tp := by
  simp only [View.updParent, View.updChildren, View.updGentries, View.updEgroup, View.cleanupParent, View.setParent, View.setRootGroup, View.setGroup, View.newGroup, View.newEntry, View.getGroup, View.getEntry, View.defGroup, View.defEntry]
  repeat' split
  all_goals rfl

@[simp] theorem View.getEntry_glen (V : View) (u : Uuid) : (V.getEntry u).glen = V.glen := by
  simp only [View.updParent, View.updChildren, View.updGentries, View.updEgroup, View.cleanupParent, View.setParent, View.setRootGroup, View.setGroup, View.newGroup, View.newEntry, View.getGroup, View.getEntry, View.defGroup, View.defEntry]
  repeat' split
  all_goals rfl

@[simp] theorem View.getEntry_root (V : View) (u : Uuid) : (V.getEntry u).root = V.root := by
  simp only [View.updParent, View.updChildren, View.updGentries, View.updEgroup, View.cleanupParent, View.setParent, View.setRootGroup, View.setGroup, View.newGroup, View.newEntry, View.getGroup, View.getEntry, View.defGroup, View.defEntry]
  repeat' split
  all_goals rfl

@[simp] theorem View.defGroup_parent (V : View) (u : Uuid) (p : Nat) : (V.defGroup u p).parent = V.parent := by
  simp only [View.updParent, View.updChildren, View.updGentries, View.updEgroup, View.cleanupParent, View.setParent, View.setRootGroup, View.setGroup, View.newGroup, View.newEntry, View.getGroup, View.getEntry, View.defGroup, View.defEntry]
  repeat' split
  all_goals rfl

@[simp] theorem View.defGroup_children (V : View) (u : Uuid) (p : Nat) : (V.defGroup u p).children = V.children := by
  simp only [View.updParent, View.updChildren, View.updGentries, View.updEgroup, View.cleanupParent, View.setParent, View.setRootGroup, View.setGroup, View.newGroup, View.newEntry, View.getGroup, View.getEntry, View.defGroup, View.defEntry]
  repeat' split
  all_goals rfl

@[simp] theorem View.defGroup_gentries (V : View) (u : Uuid) (p : Nat) : (V.defGroup u p).gentries = V.gentries := by
  simp only [View.updParent, View.updChildren, View.updGentries, View.updEgroup, View.cleanupParent, View.setParent, View.setRootGroup, View.setGroup, View.newGroup, View.newEntry, View.getGroup, View.getEntry, View.defGroup, View.defEntry]
  repeat' split
  all_goals rfl

@[simp] theorem View.defGroup_egroup (V : View) (u : Uuid) (p : Nat) : (V.defGroup u p).egroup = V.egroup := by
  simp only [View.updParent, View.updChildren, View.updGentries, View.updEgroup, View.cleanupParent, View.setParent, View.setRootGroup, View.setGroup, View.newGroup, View.newEntry, View.getGroup, View.getEntry, View.defGroup, View.defEntry]
  repeat' split
  all_goals rfl

@[simp] theorem View.defGroup_reg (V : View) (u : Uuid) (p : Nat) : (V.defGroup u p).reg = V.reg := by
  simp only [View.updParent, View.updChildren, View.updGentries, View.updEgroup, View.cleanupParent, View.setParent, View.setRootGroup, View.setGroup, View.newGroup, View.newEntry, View.getGroup, View.getEntry, View.defGroup, View.defEntry]
  repeat' split
  all_goals rfl

@[simp] theorem View.defGroup_ereg (V : View) (u : Uuid) (p : Nat) : (V.defGroup u p).ereg = V.ereg := by
  simp only [View.updParent, View.updChildren, View.updGentries, View.updEgroup, View.cleanupParent, View.setParent, View.setRootGroup, View.setGroup, View.newGroup, View.newEntry, View.getGroup, View.getEntry, View.defGroup, View.defEntry]
  repeat' split
  all_goals rfl

@[simp] theorem View.defGroup_edefs (V : View) (u : Uuid) (p : Nat) : (V.defGroup u p).edefs = V.edefs := by
  simp only [View.updParent, View.updChildren, View.updGentries, View.updEgroup, View.cleanupParent, View.setParent, View.setRootGroup, View.setGroup, View.newGroup, View.newEntry, View.getGroup, View.getEntry, View.defGroup, View.defEntry]
  repeat' split
  all_goals rfl

@[simp] theorem View.defGroup_tp (V : View) (u : Uuid) (p : Nat) : (V.defGroup u p).tp = V.tp := by
  simp only [View.updParent, View.updChildren, View.updGentries, View.updEgroup, View.cleanupParent, View.setParent, View.setRootGroup, View.setGroup, View.newGroup, View.newEntry, View.getGroup, View.getEntry, View.defGroup, View.defEntry]
  repeat' split
  all_goals rfl

@[simp] theorem View.defGroup_glen (V : View) (u : Uuid) (p : Nat) : (V.defGroup u p).glen = V.glen := by
  simp only [View.updParent, View.updChildren, View.updGentries, View.updEgroup, View.cleanupParent, View.setParent, View.setRootGroup, View.setGroup, View.newGroup, View.newEntry, View.getGroup, View.getEntry, View.defGroup, View.defEntry]
  repeat' split
  all_goals rfl

@[simp] theorem View.defGroup_elen (V : View) (u : Uuid) (p : Nat) : (V.defGroup u p).elen = V.elen := by
  simp only [View.updParent, View.updChildren, View.updGentries, View.updEgroup, View.cleanupParent, View.setParent, View.setRootGroup, View.setGroup, View.newGroup, View.newEntry, View.getGroup, View.getEntry, View.defGroup, View.defEntry]
  repeat' split
  all_goals rfl

@[simp] theorem View.defGroup_root (V : View) (u : Uuid) (p : Nat) : (V.defGroup u p).root = V.root := by
  simp only [View.updParent, View.updChildren, View.updGentries, View.updEgroup, View.cleanupParent, View.setParent, View.setRootGroup, View.setGroup, View.newGroup, View.newEntry, View.getGroup, View.getEntry, View.defGroup, View.defEntry]
  repeat' split
  all_goals rfl

@[simp] theorem View.defEntry_parent (V : View) (u : Uuid) (p : Nat) : (V.defEntry u p).parent = V.parent := by
  simp only [View.updParent, View.updChildren, View.updGentries, View.updEgroup, View.cleanupParent, View.setParent, View.setRootGroup, View.setGroup, View.newGroup, View.newEntry, View.getGroup, View.getEntry, View.defGroup, View.defEntry]
  repeat' split
  all_goals rfl

@[simp] theorem View.defEntry_children (V : View) (u : Uuid) (p : Nat) : (V.defEntry u p).children = V.children := by
  simp only [View.updParent, View.updChildren, View.updGentries, View.updEgroup, View.cleanupParent, View.setParent, View.setRootGroup, View.setGroup, View.newGroup, View.newEntry, View.getGroup, View.getEntry, View.defGroup, View.defEntry]
  repeat' split
  all_goals rfl

@[simp] theorem View.defEntry_gentries (V : View) (u : Uuid) (p : Nat) : (V.defEntry u p).gentries = V.gentries := by
  simp only [View.updParent, View.updChildren, View.updGentries, View.updEgroup, View.cleanupParent, View.setParent, View.setRootGroup, View.setGroup, View.newGroup, View.newEntry, View.getGroup, View.getEntry, View.defGroup, View.defEntry]
  repeat' split
  all_goals rfl

@[simp] theorem View.defEntry_egroup (V : View) (u : Uuid) (p : Nat) : (V.defEntry u p).egroup = V.egroup := by
  simp only [View.updParent, View.updChildren, View.updGentries, View.updEgroup, View.cleanupParent, View.setParent, View.setRootGroup, View.setGroup, View.newGroup, View.newEntry, View.getGroup, View.getEntry, View.defGroup, View.defEntry]
  repeat' split
  all_goals rfl

@[simp] theorem View.defEntry_reg (V : View) (u : Uuid) (p : Nat) : (V.defEntry u p).reg = V.reg := by
  simp only [View.updParent, View.updChildren, View.updGentries, View.updEgroup, View.cleanupParent, View.setParent, View.setRootGroup, View.setGroup, View.newGroup, View.newEntry, View.getGroup, View.getEntry, View.defGroup, View.defEntry]
  repeat' split
  all_goals rfl

@[simp] theorem View.defEntry_ereg (V : View) (u : Uuid) (p : Nat) : (V.defEntry u p).ereg = V.ereg := by
  simp only [View.updParent, View.updChildren, View.updGentries, View.updEgroup, View.cleanupParent, View.setParent, View.setRootGroup, View.setGroup, View.newGroup, View.newEntry, View.getGroup, View.getEntry, View.defGroup, View.defEntry]
  repeat' split
  all_goals rfl

@[simp] theorem View.defEntry_gdefs (V : View) (u : Uuid) (p : Nat) : (V.defEntry u p).gdefs = V.gdefs := by
  simp only [View.updParent, View.updChildren, View.updGentries, View.updEgroup, View.cleanupParent, View.setParent, View.setRootGroup, View.setGroup, View.newGroup, View.newEntry, View.getGroup, View.getEntry, View.defGroup, View.defEntry]
  repeat' split
  all_goals rfl

@[simp] theorem View.defEntry_tp (V : View) (u : Uuid) (p : Nat) : (V.defEntry u p).tp = V.tp := by
  simp only [View.updParent, View.updChildren, View.updGentries, View.updEgroup, View.cleanupParent, View.setParent, View.setRootGroup, View.setGroup, View.newGroup, View.newEntry, View.getGroup, View.getEntry, View.defGroup, View.defEntry]
  repeat' split
  all_goals rfl

@[simp] theorem View.defEntry_glen (V : View) (u : Uuid) (p : Nat) : (V.defEntry u p).glen = V.glen := by
  simp only [View.updParent, View.updChildren, View.updGentries, View.updEgroup, View.cleanupParent, View.setParent, View.setRootGroup, View.setGroup, View.newGroup, View.newEntry, View.getGroup, View.getEntry, View.defGroup, View.defEntry]
  repeat' split
  all_goals rfl

@[simp] theorem View.defEntry_elen (V : View) (u : Uuid) (p : Nat) : (V.defEntry u p).elen = V.elen := by
  simp only [View.updParent, View.updChildren, View.updGentries, View.updEgroup, View.cleanupParent, View.setParent, View.setRootGroup, View.setGroup, View.newGroup, View.newEntry, View.getGroup, View.getEntry, View.defGroup, View.defEntry]
  repeat' split
  all_goals rfl

@[simp] theorem View.defEntry_root (V : View) (u : Uuid) (p : Nat) : (V.defEntry u p).root = V.root := by
  simp only [View.updParent, View.updChildren, View.updGentries, View.updEgroup, View.cleanupParent, View.setParent, View.setRootGroup, View.setGroup, View.newGroup, View.newEntry, View.getGroup, View.getEntry, View.defGroup, View.defEntry]
  repeat' split
  all_goals rfl

/-! ### C9: the tree of groups and entries under each state change -/

theorem group_updGroup (st : Reader) (p q : Nat) (f : DbGroup → DbGroup) :
    (st.updGroup p f).group q =
      if q = p ∧ p < st.groups.length then f (st.group p) else st.group q := by
  unfold Reader.updGroup Reader.group
  by_cases hp : p < st.groups.length
  · rw [List.getElem?_eq_getElem hp]
    by_cases hq : q = p
    · subst hq
      simp [hp, List.getD_eq_getElem?_getD]
    · simp [hq, List.getD_eq_getElem?_getD, List.getElem?_set_ne (Ne.symm hq)]
  · rw [List.getElem?_eq_none (by omega)]
    simp [hp]

theorem entry_updEntry (st : Reader) (p q : Nat) (f : Entry → Entry) :
    (st.updEntry p f).entry q =
      if q = p ∧ p < st.entries.length then f (st.entry p) else st.entry q := by
  unfold Reader.updEntry Reader.entry
  by_cases hp : p < st.entries.length
  · rw [List.getElem?_eq_getElem hp]
    by_cases hq : q = p
    · subst hq
      simp [hp, List.getD_eq_getElem?_getD]
    · simp [hq, List.getD_eq_getElem?_getD, List.getElem?_set_ne (Ne.symm hq)]
  · rw [List.getElem?_eq_none (by omega)]
    simp [hp]

theorem entry_updGroup (st : Reader) (p q : Nat) (f : DbGroup → DbGroup) :
    (st.updGroup p f).entry q = st.entry q := by
  simp [Reader.entry]

theorem group_updEntry (st : Reader) (p q : Nat) (f : Entry → Entry) :
    (st.updEntry p f).group q = st.group q := by
  simp [Reader.group]

theorem view_updGroup (st : Reader) (p : Nat) (f : DbGroup → DbGroup)
    (hf : ∀ g, (f g).links = g.links) : (st.updGroup p f).view = st.view := by
  have h : ∀ q, ((st.updGroup p f).group q).links = (st.group q).links := by
    intro q
    rw [group_updGroup]
    split
    · rename_i hq
      rw [hq.1]
      exact hf _
    · rfl
  simp only [DbGroup.links, Prod.mk.injEq] at h
  simp only [Reader.view, View.mk.injEq, entry_updGroup]
  refine ⟨funext fun q => (h q).1, funext fun q => (h q).2.1, funext fun q => (h q).2.2,
    ?_⟩
  simp

theorem view_updEntry (st : Reader) (p : Nat) (f : Entry → Entry)
    (hf : ∀ e, (f e).m_group = e.m_group) : (st.updEntry p f).view = st.view := by
  have h : ∀ q, ((st.updEntry p f).entry q).m_group = (st.entry q).m_group := by
    intro q
    rw [entry_updEntry]
    split
    · rename_i hq
      rw [hq.1]
      exact hf _
    · rfl
  simp only [Reader.view, View.mk.injEq, group_updEntry]
  refine ⟨trivial, trivial, trivial, funext fun q => h q, ?_⟩
  simp

theorem view_updParent (st : Reader) (p : Nat) (x : GroupParent) :
    (st.updGroup p (fun g => { g with m_parent := x })).view = st.view.updParent p x := by
  unfold View.updParent
  simp only [Reader.view, entry_updGroup, group_updGroup]
  split
  · rename_i hp
    simp only [View.mk.injEq]
    refine ⟨funext fun q => ?_, funext fun q => ?_, funext fun q => ?_, ?_⟩
    · by_cases hq : q = p <;> simp [hq, hp, Function.update]
    · by_cases hq : q = p <;> simp [hq, hp]
    · by_cases hq : q = p <;> simp [hq, hp]
    · simp
  · rename_i hp
    simp [hp]

theorem view_updChildren (st : Reader) (p : Nat) (f : List Nat → List Nat) :
    (st.updGroup p (fun g => { g with m_children := f g.m_children })).view
      = st.view.updChildren p f := by
  unfold View.updChildren
  simp only [Reader.view, entry_updGroup, group_updGroup]
  split
  · rename_i hp
    simp only [View.mk.injEq]
    refine ⟨funext fun q => ?_, funext fun q => ?_, funext fun q => ?_, ?_⟩
    · by_cases hq : q = p <;> simp [hq, hp]
    · by_cases hq : q = p <;> simp [hq, hp, Function.update]
    · by_cases hq : q = p <;> simp [hq, hp]
    · simp
  · rename_i hp
    simp [hp]

theorem view_updGentries (st : Reader) (p : Nat) (f : List Nat → List Nat) :
    (st.updGroup p (fun g => { g with m_entries := f g.m_entries })).view
      = st.view.updGentries p f := by
  unfold View.updGentries
  simp only [Reader.view, entry_updGroup, group_updGroup]
  split
  · rename_i hp
    simp only [View.mk.injEq]
    refine ⟨funext fun q => ?_, funext fun q => ?_, funext fun q => ?_, ?_⟩
    · by_cases hq : q = p <;> simp [hq, hp]
    · by_cases hq : q = p <;> simp [hq, hp]
    · by_cases hq : q = p <;> simp [hq, hp, Function.update]
    · simp
  · rename_i hp
    simp [hp]

theorem view_updEgroup (st : Reader) (e : Nat) (x : Option Nat) :
    (st.updEntry e (fun y => { y with m_group := x })).view = st.view.updEgroup e x := by
  unfold View.updEgroup
  simp only [Reader.view, group_updEntry, entry_updEntry]
  split
  · rename_i hp
    simp only [View.mk.injEq]
    refine ⟨trivial, trivial, trivial, funext fun q => ?_, ?_⟩
    · by_cases hq : q = e <;> simp [hq, hp, Function.update]
    · simp
  · rename_i hp
    simp [hp]

theorem view_cleanupParent (st : Reader) (c : Nat) :
    (st.cleanupParent c).view = st.view.cleanupParent c := by
  unfold Reader.cleanupParent View.cleanupParent
  show (match (st.group c).m_parent with
    | .group q => st.updGroup q (fun g => { g with m_children := g.m_children.filter (· ≠ c) })
    | _ => st).view = match (st.group c).m_parent with
    | .group q => st.view.updChildren q (fun l => l.filter (· ≠ c))
    | _ => st.view
  split
  · exact view_updChildren st _ _
  · rfl

theorem view_setParent (st : Reader) (c p : Nat) :
    (st.setParent c p).view = st.view.setParent c p := by
  unfold Reader.setParent View.setParent
  dsimp only
  rw [view_updChildren _ p (fun l => l ++ [c]), view_updParent, view_cleanupParent]

theorem view_setRootPtr (st : Reader) (p : Nat) :
    (st.setRootPtr p).view = { st.view with root := p } := by
  simp [Reader.view, Reader.group, Reader.entry]

theorem view_setRootGroup (st : Reader) (p : Nat) :
    (st.setRootGroup p).view = st.view.setRootGroup p := by
  unfold Reader.setRootGroup View.setRootGroup
  dsimp only
  rw [view_setRootPtr, view_updParent, view_cleanupParent]

theorem view_setGroup (st : Reader) (e p : Nat) :
    (st.setGroup e p).view = st.view.setGroup e p := by
  unfold Reader.setGroup View.setGroup
  show (if (st.entry e).m_group = some p then st else _).view
    = if (st.entry e).m_group = some p then st.view else _
  split
  · rfl
  · dsimp only
    rw [view_updGentries _ p (fun l => l ++ [e]), view_updEgroup]
    congr 2
    show (match (st.entry e).m_group with
      | some q => st.updGroup q (fun g => { g with m_entries := g.m_entries.filter (· ≠ e) })
      | none => st).view = match (st.entry e).m_group with
      | some q => st.view.updGentries q (fun l => l.filter (· ≠ e))
      | none => st.view
    split
    · exact view_updGentries st _ _
    · rfl

theorem view_newGroup (st : Reader) : st.newGroup.2.view = st.view.newGroup := by
  simp only [Reader.newGroup, Reader.view, View.newGroup, View.mk.injEq, Reader.group,
    Reader.entry]
  refine ⟨funext fun q => ?_, funext fun q => ?_, funext fun q => ?_, ?_⟩
  all_goals
    first
    | (by_cases hq : q < st.groups.length
       · simp [List.getD_eq_getElem?_getD, List.getElem?_append_left hq]
       · by_cases hq2 : q = st.groups.length
         · subst hq2
           simp [List.getD_eq_getElem?_getD, DbGroup.init]
         · have h1 : st.groups.length + 1 ≤ q := by omega
           simp [List.getD_eq_getElem?_getD, List.getElem?_eq_none, h1,
             Nat.le_of_lt (Nat.lt_of_succ_le h1), DbGroup.init])
    | simp

theorem view_newEntry (st : Reader) : st.newEntry.2.view = st.view.newEntry := by
  simp only [Reader.newEntry, Reader.view, View.newEntry, View.mk.injEq, Reader.group,
    Reader.entry]
  refine ⟨trivial, trivial, trivial, funext fun q => ?_, ?_⟩
  · by_cases hq : q < st.entries.length
    · simp [List.getD_eq_getElem?_getD, List.getElem?_append_left hq]
    · by_cases hq2 : q = st.entries.length
      · subst hq2
        simp [List.getD_eq_getElem?_getD, Entry.init]
      · have h1 : st.entries.length + 1 ≤ q := by omega
        simp [List.getD_eq_getElem?_getD, List.getElem?_eq_none, h1,
          Nat.le_of_lt (Nat.lt_of_succ_le h1), Entry.init]
  · simp

theorem view_registerGroup (st : Reader) (u : Uuid) (p : Nat) :
    (st.registerGroup u p).view = { st.view with reg := mapSet u p st.view.reg } := by
  simp [Reader.view, Reader.group, Reader.entry]

theorem view_registerEntry (st : Reader) (u : Uuid) (p : Nat) :
    (st.registerEntry u p).view = { st.view with ereg := mapSet u p st.view.ereg } := by
  simp [Reader.view, Reader.group, Reader.entry]

theorem view_logGroup (st : Reader) (u : Uuid) (p : Nat) :
    (st.logGroup u p).view = st.view := by
  simp [Reader.view, Reader.group, Reader.entry]

theorem view_logEntry (st : Reader) (u : Uuid) (p : Nat) :
    (st.logEntry u p).view = st.view := by
  simp [Reader.view, Reader.group, Reader.entry]

theorem view_defGroup (st : Reader) (u : Uuid) (p : Nat) :
    (st.defGroup u p).view = st.view.defGroup u p := by
  simp [Reader.view, Reader.group, Reader.entry, View.defGroup]

theorem view_defEntry (st : Reader) (u : Uuid) (p : Nat) :
    (st.defEntry u p).view = st.view.defEntry u p := by
  simp [Reader.view, Reader.group, Reader.entry, View.defEntry]

theorem view_raiseError (st : Reader) (m : String) : (st.raiseError m).view = st.view := by
  simp [Reader.view, Reader.group, Reader.entry, Reader.raiseError]

theorem view_setMeta (st : Reader) (f : Metadata → Metadata) : (st.setMeta f).view = st.view := by
  simp [Reader.view, Reader.group, Reader.entry, Reader.setMeta]

theorem view_randomUuid (env : Env) (st : Reader) : (st.randomUuid env).2.view = st.view := by
  simp [Reader.view, Reader.group, Reader.entry, Reader.randomUuid]

theorem view_cipherProcess (env : Env) (st : Reader) (cs c : QByteArray) :
    (st.cipherProcess env cs c).2.view = st.view := by
  simp [Reader.view, Reader.group, Reader.entry, Reader.cipherProcess]

theorem view_setNullDeref (st : Reader) : st.setNullDeref.view = st.view := by
  simp [Reader.view, Reader.group, Reader.entry]

theorem view_setXmlError (st : Reader) : st.setXmlError.view = st.view := by
  simp [Reader.view, Reader.group, Reader.entry]

theorem view_setHeaderHash (st : Reader) (v : QByteArray) :
    (st.setHeaderHash v).view = st.view := by
  simp [Reader.view, Reader.group, Reader.entry]

theorem view_setBinaryPool (st : Reader) (v : List (String × QByteArray)) :
    (st.setBinaryPool v).view = st.view := by
  simp [Reader.view, Reader.group, Reader.entry]

theorem view_addDeletedObject (st : Reader) (d : DeletedObject) :
    (st.addDeletedObject d).view = st.view := by
  simp [Reader.view, Reader.group, Reader.entry]

theorem view_setPending (st : Reader) (q : List (List XmlElement)) :
    (st.setPending q).view = st.view := by
  simp [Reader.view, Reader.group, Reader.entry]

theorem view_addBinaryRefs (st : Reader) (v : List (String × Nat × String)) :
    (st.addBinaryRefs v).view = st.view := by
  simp [Reader.view, Reader.group, Reader.entry]

theorem view_getGroup (st : Reader) (u : Uuid) : (getGroup u st).2.view = st.view.getGroup u := by
  unfold getGroup View.getGroup
  show Reader.view (Prod.snd (if u.isNull then _ else match mapGet u st.m_groups with
      | some p => _
      | none => _))
    = if u.isNull then st.view else match mapGet u st.m_groups with
      | some _ => st.view
      | none => _
  split
  · rfl
  · split
    · exact view_logGroup _ _ _
    · dsimp only
      have e1 := fun (s : Reader) (p : Nat) =>
        view_updGroup s p (fun g => { g with m_updateTimeinfo := false }) (fun _ => rfl)
      have e2 := fun (s : Reader) (p : Nat) =>
        view_updGroup s p (fun g => { g with m_uuid := u }) (fun _ => rfl)
      rw [view_registerGroup, view_setParent, e2, e1, view_newGroup]
      simp [Reader.newGroup]
      exact ⟨rfl, rfl, rfl⟩

theorem view_getEntry (st : Reader) (u : Uuid) : (getEntry u st).2.view = st.view.getEntry u := by
  unfold getEntry View.getEntry
  show Reader.view (Prod.snd (if u.isNull then _ else match mapGet u st.m_entries with
      | some p => _
      | none => _))
    = if u.isNull then st.view else match mapGet u st.m_entries with
      | some _ => st.view
      | none => _
  split
  · rfl
  · split
    · exact view_logEntry _ _ _
    · dsimp only
      have e1 := fun (s : Reader) (p : Nat) =>
        view_updEntry s p (fun e => { e with m_updateTimeinfo := false }) (fun _ => rfl)
      have e2 := fun (s : Reader) (p : Nat) =>
        view_updEntry s p (fun e => { e with m_uuid := u }) (fun _ => rfl)
      rw [view_registerEntry, view_setGroup, e2, e1, view_newEntry]
      simp [Reader.newEntry]
      exact ⟨rfl, rfl, rfl⟩

/-! ### C9: the elements read into groups and entries -/

theorem BuiltList_cons (V : View) (x : XmlElement) (xs : List XmlElement) (gs es : List Nat) :
    BuiltList V (x :: xs) gs es ↔
      if x.name = "Group" then
        ∃ g gs1, gs = g :: gs1 ∧ g ∈ V.gdefs.map Prod.snd ∧
          BuiltList V x.children (V.children g) (V.gentries g) ∧ BuiltList V xs gs1 es
      else if x.name = "Entry" then ∃ e es1, es = e :: es1 ∧ BuiltList V xs gs es1
      else BuiltList V xs gs es := by
  cases x
  simp only [BuiltList, XmlElement.name, XmlElement.children]

theorem BuiltList_nil (V : View) (gs es : List Nat) :
    BuiltList V [] gs es ↔ gs = [] ∧ es = [] := by
  simp only [BuiltList]

theorem countGroupsList_cons (x : XmlElement) (xs : List XmlElement) :
    countGroupsList (x :: xs)
      = (if x.name = "Group" then 1 + countGroupsList x.children else 0)
        + countGroupsList xs := by
  cases x
  simp only [countGroupsList, XmlElement.countGroups, XmlElement.name, XmlElement.children]

theorem countEntriesList_cons (x : XmlElement) (xs : List XmlElement) :
    countEntriesList (x :: xs)
      = (if x.name = "Group" then countEntriesList x.children
          else if x.name = "Entry" then 1 else 0)
        + countEntriesList xs := by
  cases x
  simp only [countEntriesList, XmlElement.countEntries, XmlElement.name, XmlElement.children]

theorem countGroupsList_append (xs ys : List XmlElement) :
    countGroupsList (xs ++ ys) = countGroupsList xs + countGroupsList ys := by
  induction xs with
  | nil => simp [countGroupsList]
  | cons x xs ih => simp only [List.cons_append, countGroupsList_cons, ih]; omega

theorem countEntriesList_append (xs ys : List XmlElement) :
    countEntriesList (xs ++ ys) = countEntriesList xs + countEntriesList ys := by
  induction xs with
  | nil => simp [countEntriesList]
  | cons x xs ih => simp only [List.cons_append, countEntriesList_cons, ih]; omega

/-- The elements read stay read when the tree grows without touching the
groups defined so far. -/
theorem BuiltList.frame {V W : View} (h : TreeExt V W) :
    ∀ (xs : List XmlElement) (gs es : List Nat), BuiltList V xs gs es → BuiltList W xs gs es := by
  intro xs gs es
  induction xs, gs, es using BuiltList.induct V with
  | case1 gs es => exact fun hb => (BuiltList_nil W gs es).mpr ((BuiltList_nil V gs es).mp hb)
  | case2 a t cs xs gs es ih1 ih2 =>
    intro hb
    simp only [BuiltList, if_true] at hb ⊢
    obtain ⟨g, gs1, e1, hg, hc, hx⟩ := hb
    have hk := h.kids g hg
    refine ⟨g, gs1, e1, ?_, ?_, ih2 gs1 hx⟩
    · obtain ⟨D, hD⟩ := h.gdefs
      rw [← hD]
      simp only [List.map_append, List.mem_append]
      exact Or.inl hg
    · rw [hk.1, hk.2]
      exact ih1 g hc
  | case3 a t cs xs gs es hne ih =>
    intro hb
    simp only [BuiltList, hne, if_false, if_true] at hb ⊢
    obtain ⟨e, es1, e1, hx⟩ := hb
    exact ⟨e, es1, e1, ih es1 hx⟩
  | case4 n a t cs xs gs es h1 h2 ih =>
    intro hb
    simp only [BuiltList, h1, h2, if_false] at hb ⊢
    exact ih hb

theorem BuiltList.snoc_group {V : View} {x : XmlElement} {g : Nat} (hx : x.name = "Group")
    (hg : g ∈ V.gdefs.map Prod.snd)
    (hb : BuiltList V x.children (V.children g) (V.gentries g)) :
    ∀ (xs : List XmlElement) (gs es : List Nat), BuiltList V xs gs es →
      BuiltList V (xs ++ [x]) (gs ++ [g]) es := by
  intro xs
  induction xs with
  | nil =>
    intro gs es h
    obtain ⟨rfl, rfl⟩ := (BuiltList_nil _ _ _).mp h
    rw [List.nil_append, BuiltList_cons, if_pos hx]
    exact ⟨g, [], rfl, hg, hb, (BuiltList_nil _ _ _).mpr ⟨rfl, rfl⟩⟩
  | cons y ys ih =>
    intro gs es h
    rw [List.cons_append, BuiltList_cons]
    rw [BuiltList_cons] at h
    split
    · rename_i hy
      rw [if_pos hy] at h
      obtain ⟨g1, gs1, e1, hg1, hc, hr⟩ := h
      exact ⟨g1, gs1 ++ [g], by rw [e1]; rfl, hg1, hc, ih gs1 es hr⟩
    · rename_i hy
      rw [if_neg hy] at h
      split
      · rename_i hy2
        rw [if_pos hy2] at h
        obtain ⟨e, es1, e1, hr⟩ := h
        exact ⟨e, es1, e1, ih gs es1 hr⟩
      · rename_i hy2
        rw [if_neg hy2] at h
        exact ih gs es h

theorem BuiltList.snoc_entry {V : View} {x : XmlElement} (e : Nat) (hx : ¬ x.name = "Group")
    (hx2 : x.name = "Entry") :
    ∀ (xs : List XmlElement) (gs es : List Nat), BuiltList V xs gs es →
      BuiltList V (xs ++ [x]) gs (es ++ [e]) := by
  intro xs
  induction xs with
  | nil =>
    intro gs es h
    obtain ⟨rfl, rfl⟩ := (BuiltList_nil _ _ _).mp h
    rw [List.nil_append, BuiltList_cons, if_neg hx, if_pos hx2]
    exact ⟨e, [], rfl, (BuiltList_nil _ _ _).mpr ⟨rfl, rfl⟩⟩
  | cons y ys ih =>
    intro gs es h
    rw [List.cons_append, BuiltList_cons]
    rw [BuiltList_cons] at h
    split
    · rename_i hy
      rw [if_pos hy] at h
      obtain ⟨g1, gs1, e1, hg1, hc, hr⟩ := h
      exact ⟨g1, gs1, e1, hg1, hc, ih gs1 es hr⟩
    · rename_i hy
      rw [if_neg hy] at h
      split
      · rename_i hy2
        rw [if_pos hy2] at h
        obtain ⟨e0, es1, e1, hr⟩ := h
        exact ⟨e0, es1 ++ [e], by rw [e1]; rfl, ih gs es1 hr⟩
      · rename_i hy2
        rw [if_neg hy2] at h
        exact ih gs es h

theorem BuiltList.snoc_other {V : View} {x : XmlElement} (hx : ¬ x.name = "Group")
    (hx2 : ¬ x.name = "Entry") :
    ∀ (xs : List XmlElement) (gs es : List Nat), BuiltList V xs gs es →
      BuiltList V (xs ++ [x]) gs es := by
  intro xs
  induction xs with
  | nil =>
    intro gs es h
    obtain ⟨rfl, rfl⟩ := (BuiltList_nil _ _ _).mp h
    rw [List.nil_append, BuiltList_cons, if_neg hx, if_neg hx2]
    exact (BuiltList_nil _ _ _).mpr ⟨rfl, rfl⟩
  | cons y ys ih =>
    intro gs es h
    rw [List.cons_append, BuiltList_cons]
    rw [BuiltList_cons] at h
    split
    · rename_i hy
      rw [if_pos hy] at h
      obtain ⟨g1, gs1, e1, hg1, hc, hr⟩ := h
      exact ⟨g1, gs1, e1, hg1, hc, ih gs1 es hr⟩
    · rename_i hy
      rw [if_neg hy] at h
      split
      · rename_i hy2
        rw [if_pos hy2] at h
        obtain ⟨e0, es1, e1, hr⟩ := h
        exact ⟨e0, es1, e1, ih gs es1 hr⟩
      · rename_i hy2
        rw [if_neg hy2] at h
        exact ih gs es h

/-- The groups below the groups read, and the entries in their entry lists, are
as many as the elements read. -/
theorem BuiltList.count (st : Reader) :
    ∀ (xs : List XmlElement) (gs es : List Nat), BuiltList st.view xs gs es →
      ∀ n, countGroupsList xs ≤ n →
        (gs.flatMap (st.groupsUnder n)).length = countGroupsList xs ∧
        ((gs.flatMap (st.groupsUnder n)).flatMap (fun g => (st.group g).m_entries)).length
          + es.length = countEntriesList xs := by
  intro xs gs es
  induction xs, gs, es using BuiltList.induct st.view with
  | case1 gs es =>
    intro hb n _
    obtain ⟨rfl, rfl⟩ := (BuiltList_nil _ _ _).mp hb
    simp [countGroupsList, countEntriesList]
  | case2 a t cs xs gs es ih1 ih2 =>
    intro hb n hn
    simp only [BuiltList, if_true] at hb
    obtain ⟨g, gs1, e1, hg, hc, hx⟩ := hb
    simp only [countGroupsList, countEntriesList, XmlElement.countGroups,
      XmlElement.countEntries, if_true] at hn ⊢
    obtain ⟨m, rfl⟩ : ∃ m, n = m + 1 := ⟨n - 1, by omega⟩
    have h1 := ih1 g hc m (by omega)
    have h2 := ih2 gs1 hx (m + 1) (by omega)
    subst e1
    have hv1 : st.view.children g = (st.group g).m_children := rfl
    have hv2 : st.view.gentries g = (st.group g).m_entries := rfl
    rw [hv1, hv2] at h1
    have hu : st.groupsUnder (m + 1) g
        = g :: (st.group g).m_children.flatMap (st.groupsUnder m) := rfl
    rw [List.flatMap_cons, hu]
    simp only [List.flatMap_cons, List.cons_append, List.length_cons,
      List.length_append, List.flatMap_append] at h1 h2 ⊢
    omega
  | case3 a t cs xs gs es hne ih =>
    intro hb n hn
    simp only [BuiltList, hne, if_false, if_true] at hb
    obtain ⟨e, es1, e1, hx⟩ := hb
    simp only [countGroupsList, countEntriesList, XmlElement.countGroups,
      XmlElement.countEntries, hne, if_false, if_true] at hn ⊢
    have h := ih es1 hx n (by omega)
    subst e1
    simp only [List.length_cons]
    omega
  | case4 nm a t cs xs gs es h1 h2 ih =>
    intro hb n hn
    simp only [BuiltList, h1, h2, if_false] at hb
    simp only [countGroupsList, countEntriesList, XmlElement.countGroups,
      XmlElement.countEntries, h1, h2, if_false] at hn ⊢
    have h := ih hb n (by omega)
    omega

/-! ### C9: the shape of the tree is kept by each change -/

theorem mapGet_mapSet {κ α : Type} [DecidableEq κ] (k k1 : κ) (v : α) (l : List (κ × α)) :
    mapGet k (mapSet k1 v l) = if k = k1 then some v else mapGet k l := by
  split
  · rename_i h
    rw [h, mapGet_mapSet_self]
  · rename_i h
    exact mapGet_mapSet_of_ne h v l

theorem TreeExt.refl (V : View) : TreeExt V V :=
  ⟨List.prefix_refl _, List.prefix_refl _, fun _ _ => ⟨rfl, rfl⟩⟩

theorem TreeExt.trans {U V W : View} (h1 : TreeExt U V) (h2 : TreeExt V W) : TreeExt U W := by
  refine ⟨h1.gdefs.trans h2.gdefs, h1.edefs.trans h2.edefs, fun p hp => ?_⟩
  have hp2 : p ∈ V.gdefs.map Prod.snd := by
    obtain ⟨D, hD⟩ := h1.gdefs
    rw [← hD, List.map_append, List.mem_append]
    exact Or.inl hp
  exact ⟨(h2.kids p hp2).1.trans (h1.kids p hp).1, (h2.kids p hp2).2.trans (h1.kids p hp).2⟩

theorem View.getGroup_fresh {V : View} {u : Uuid} (hn : ¬ u.isNull = true)
    (hm : mapGet u V.reg = none) (hb : V.parent V.glen = .none) (ht : V.tp < V.glen) :
    V.getGroup u = { V with
      parent := Function.update V.parent V.glen (.group V.tp),
      children := Function.update V.children V.tp (V.children V.tp ++ [V.glen]),
      reg := mapSet u V.glen V.reg, glen := V.glen + 1 } := by
  simp [View.getGroup, hn, hm, View.setParent, View.cleanupParent, View.newGroup, hb,
    View.updParent, View.updChildren, Nat.lt_succ_of_lt ht]

theorem View.getEntry_fresh {V : View} {u : Uuid} (hn : ¬ u.isNull = true)
    (hm : mapGet u V.ereg = none) (hb : V.egroup V.elen = none) (ht : V.tp < V.glen) :
    V.getEntry u = { V with
      egroup := Function.update V.egroup V.elen (some V.tp),
      gentries := Function.update V.gentries V.tp (V.gentries V.tp ++ [V.elen]),
      ereg := mapSet u V.elen V.ereg, elen := V.elen + 1 } := by
  simp [View.getEntry, hn, hm, View.setGroup, View.newEntry, hb, View.updEgroup,
    View.updGentries, ht]

theorem TreeInv.mem_reg {V : View} {S Se : List Nat} (h : TreeInv V S Se) {p : Nat}
    (hp : p ∈ V.gdefs.map Prod.snd) : ∃ u, (u, p) ∈ V.gdefs ∧ mapGet u V.reg = some p := by
  obtain ⟨⟨u, q⟩, hd, rfl⟩ := List.mem_map.mp hp
  exact ⟨u, hd, h.defs_reg _ hd⟩

theorem TreeInv.mem_ereg {V : View} {S Se : List Nat} (h : TreeInv V S Se) {e : Nat}
    (he : e ∈ V.edefs.map Prod.snd) : ∃ u, (u, e) ∈ V.edefs ∧ mapGet u V.ereg = some e := by
  obtain ⟨⟨u, q⟩, hd, rfl⟩ := List.mem_map.mp he
  exact ⟨u, hd, h.edefs_reg _ hd⟩

theorem TreeInv.def_lt {V : View} {S Se : List Nat} (h : TreeInv V S Se) {p : Nat}
    (hp : p ∈ V.gdefs.map Prod.snd) : p < V.glen ∧ p ≠ V.tp := by
  obtain ⟨u, _, hu⟩ := h.mem_reg hp
  exact ⟨h.reg_lt u p hu, fun e => h.tp_unreg u (e ▸ hu)⟩

theorem TreeInv.edef_lt {V : View} {S Se : List Nat} (h : TreeInv V S Se) {e : Nat}
    (he : e ∈ V.edefs.map Prod.snd) : e < V.elen := by
  obtain ⟨u, _, hu⟩ := h.mem_ereg he
  exact h.ereg_lt u e hu

theorem TreeInv.getGroup {V : View} {S Se : List Nat} (h : TreeInv V S Se) (u : Uuid) :
    TreeInv (V.getGroup u) S Se ∧ TreeExt V (V.getGroup u) := by
  by_cases hn : u.isNull = true
  · simp only [View.getGroup, hn, if_true]
    exact ⟨h, TreeExt.refl V⟩
  · cases hm : mapGet u V.reg with
    | some p =>
      simp only [View.getGroup, hn, hm]
      exact ⟨h, TreeExt.refl V⟩
    | none =>
      rw [View.getGroup_fresh hn hm (h.beyond _ (Nat.le_refl _)).1 h.tp_lt]
      have htp := h.tp_lt
      refine ⟨⟨?_, ?_, ?_, ?_, ?_, h.ereg_lt, h.ereg_inj, h.edefs_reg, ?_, h.ebeyond, ?_,
        h.efresh, ?_, h.epend, h.pend_nodup, h.epend_nodup⟩, ⟨List.prefix_refl _,
        List.prefix_refl _, ?_⟩⟩
      · exact Nat.lt_succ_of_lt htp
      · intro v hv
        simp only [mapGet_mapSet] at hv
        split at hv
        · simp only [Option.some.injEq] at hv
          omega
        · exact h.tp_unreg v hv
      · intro v p hv
        simp only [mapGet_mapSet] at hv
        split at hv
        · simp only [Option.some.injEq] at hv
          simp only
          omega
        · exact Nat.lt_succ_of_lt (h.reg_lt v p hv)
      · intro v w p hv hw
        simp only [mapGet_mapSet] at hv hw
        split at hv <;> split at hw
        · rename_i h1 h2
          rw [h1, h2]
        · simp only [Option.some.injEq] at hv
          have := h.reg_lt w p hw
          omega
        · simp only [Option.some.injEq] at hw
          have := h.reg_lt v p hv
          omega
        · exact h.reg_inj v w p hv hw
      · intro d hd
        have h1 := h.defs_reg d hd
        exact mapGet_mapSet_of_some _ h1 hm
      · intro p hp
        simp only at hp
        have h1 := h.beyond p (by omega)
        simp only [Function.update_apply]
        rw [if_neg (by omega), if_neg (by omega)]
        exact h1
      · intro v p hv hp
        simp only [mapGet_mapSet] at hv
        simp only [Function.update_apply]
        split at hv
        · simp only [Option.some.injEq] at hv
          subst hv
          have h1 := h.beyond V.glen (Nat.le_refl _)
          rw [if_pos rfl, if_neg (by omega)]
          exact ⟨rfl, h1.2.1, h1.2.2⟩
        · have h1 := h.reg_lt v p hv
          have h2 : p ≠ V.tp := fun e => h.tp_unreg v (e ▸ hv)
          rw [if_neg (by omega), if_neg h2]
          exact h.fresh v p hv hp
      · intro c hc
        have h1 := h.pend c hc
        have h2 := h.def_lt h1.1
        simp only [Function.update_apply]
        rw [if_neg (by omega)]
        exact h1
      · intro p hp
        have h2 := h.def_lt hp
        simp [Function.update_apply, h2.2]

theorem TreeInv.getEntry {V : View} {S Se : List Nat} (h : TreeInv V S Se) (u : Uuid) :
    TreeInv (V.getEntry u) S Se ∧ TreeExt V (V.getEntry u) := by
  by_cases hn : u.isNull = true
  · simp only [View.getEntry, hn, if_true]
    exact ⟨h, TreeExt.refl V⟩
  · cases hm : mapGet u V.ereg with
    | some p =>
      simp only [View.getEntry, hn, hm]
      exact ⟨h, TreeExt.refl V⟩
    | none =>
      rw [View.getEntry_fresh hn hm (h.ebeyond _ (Nat.le_refl _)) h.tp_lt]
      have htp := h.tp_lt
      refine ⟨⟨h.tp_lt, h.tp_unreg, h.reg_lt, h.reg_inj, h.defs_reg, ?_, ?_, ?_, ?_, ?_, ?_,
        ?_, h.pend, ?_, h.pend_nodup, h.epend_nodup⟩, ⟨List.prefix_refl _,
        List.prefix_refl _, ?_⟩⟩
      · intro v p hv
        simp only [mapGet_mapSet] at hv
        split at hv
        · simp only [Option.some.injEq] at hv
          simp only
          omega
        · exact Nat.lt_succ_of_lt (h.ereg_lt v p hv)
      · intro v w p hv hw
        simp only [mapGet_mapSet] at hv hw
        split at hv <;> split at hw
        · rename_i h1 h2
          rw [h1, h2]
        · simp only [Option.some.injEq] at hv
          have := h.ereg_lt w p hw
          omega
        · simp only [Option.some.injEq] at hw
          have := h.ereg_lt v p hv
          omega
        · exact h.ereg_inj v w p hv hw
      · intro d hd
        have h1 := h.edefs_reg d hd
        exact mapGet_mapSet_of_some _ h1 hm
      · intro p hp
        have h1 := h.beyond p hp
        simp only at hp
        simp only [Function.update_apply]
        rw [if_neg (by omega)]
        exact h1
      · intro e he
        simp only at he
        simp only [Function.update_apply]
        rw [if_neg (by omega)]
        exact h.ebeyond e (by omega)
      · intro v p hv hp
        have h2 : p ≠ V.tp := fun e => h.tp_unreg v (e ▸ hv)
        simp only [Function.update_apply]
        rw [if_neg h2]
        exact h.fresh v p hv hp
      · intro v e hv he
        simp only [mapGet_mapSet] at hv
        simp only [Function.update_apply]
        split at hv
        · simp only [Option.some.injEq] at hv
          subst hv
          rw [if_pos rfl]
        · have h1 := h.ereg_lt v e hv
          rw [if_neg (by omega)]
          exact h.efresh v e hv he
      · intro e he
        have h1 := h.epend e he
        have h2 := h.edef_lt h1.1
        simp only [Function.update_apply]
        rw [if_neg (by omega)]
        exact h1
      · intro p hp
        have h2 := h.def_lt hp
        simp [Function.update_apply, h2.2]

theorem TreeInv.newGroup {V : View} {S Se : List Nat} (h : TreeInv V S Se) :
    TreeInv V.newGroup S Se :=
  ⟨Nat.lt_succ_of_lt h.tp_lt, h.tp_unreg, fun u p hu => Nat.lt_succ_of_lt (h.reg_lt u p hu),
    h.reg_inj, h.defs_reg, h.ereg_lt, h.ereg_inj, h.edefs_reg,
    fun p hp => h.beyond p (Nat.le_of_succ_le hp), h.ebeyond, h.fresh, h.efresh, h.pend,
    h.epend, h.pend_nodup, h.epend_nodup⟩

theorem TreeInv.newEntry {V : View} {S Se : List Nat} (h : TreeInv V S Se) :
    TreeInv V.newEntry S Se :=
  ⟨h.tp_lt, h.tp_unreg, h.reg_lt, h.reg_inj, h.defs_reg,
    fun u e hu => Nat.lt_succ_of_lt (h.ereg_lt u e hu), h.ereg_inj, h.edefs_reg, h.beyond,
    fun e he => h.ebeyond e (Nat.le_of_succ_le he), h.fresh, h.efresh, h.pend,
    h.epend, h.pend_nodup, h.epend_nodup⟩

theorem TreeExt.afterNewGroup (V : View) : TreeExt V V.newGroup :=
  ⟨List.prefix_refl _, List.prefix_refl _, fun _ _ => ⟨rfl, rfl⟩⟩

theorem TreeExt.afterNewEntry (V : View) : TreeExt V V.newEntry :=
  ⟨List.prefix_refl _, List.prefix_refl _, fun _ _ => ⟨rfl, rfl⟩⟩

theorem TreeInv.defGroup {V : View} {S Se : List Nat} (h : TreeInv V S Se) {u : Uuid} {g : Nat}
    (hu : mapGet u V.reg = some g) (hg : g ∉ V.gdefs.map Prod.snd) :
    TreeInv (V.defGroup u g) (S ++ [g]) Se ∧ TreeExt V (V.defGroup u g) ∧
      V.children g = [] ∧ V.gentries g = [] := by
  have hf := h.fresh u g hu hg
  refine ⟨⟨h.tp_lt, h.tp_unreg, h.reg_lt, h.reg_inj, ?_, h.ereg_lt, h.ereg_inj, h.edefs_reg,
    h.beyond, h.ebeyond, ?_, h.efresh, ?_, h.epend, ?_, h.epend_nodup⟩,
    ⟨List.prefix_append _ _, List.prefix_refl _, fun _ _ => ⟨rfl, rfl⟩⟩, hf.2.1, hf.2.2⟩
  · intro d hd
    simp only [View.defGroup, List.mem_append, List.mem_singleton] at hd
    rcases hd with hd | rfl
    · exact h.defs_reg d hd
    · exact hu
  · intro v p hv hp
    refine h.fresh v p hv (fun hc => hp ?_)
    simp only [View.defGroup, List.map_append, List.mem_append]
    exact Or.inl hc
  · intro c hc
    simp only [View.defGroup, List.map_append, List.mem_append, List.map_cons, List.map_nil,
      List.mem_singleton] at hc ⊢
    rcases hc with hc | rfl
    · exact ⟨Or.inl (h.pend c hc).1, (h.pend c hc).2⟩
    · exact ⟨Or.inr rfl, hf.1⟩
  · rw [List.nodup_append]
    refine ⟨h.pend_nodup, List.nodup_singleton g, ?_⟩
    intro a ha hb
    simp only [List.mem_singleton] at hb
    subst hb
    exact hg (h.pend a ha).1

theorem TreeInv.defEntry {V : View} {S Se : List Nat} (h : TreeInv V S Se) {u : Uuid} {e : Nat}
    (hu : mapGet u V.ereg = some e) (he : e ∉ V.edefs.map Prod.snd) :
    TreeInv (V.defEntry u e) S (Se ++ [e]) ∧ TreeExt V (V.defEntry u e) := by
  have hf := h.efresh u e hu he
  refine ⟨⟨h.tp_lt, h.tp_unreg, h.reg_lt, h.reg_inj, h.defs_reg, h.ereg_lt, h.ereg_inj, ?_,
    h.beyond, h.ebeyond, h.fresh, ?_, h.pend, ?_, h.pend_nodup, ?_⟩,
    ⟨List.prefix_refl _, List.prefix_append _ _, fun _ _ => ⟨rfl, rfl⟩⟩⟩
  · intro d hd
    simp only [View.defEntry, List.mem_append, List.mem_singleton] at hd
    rcases hd with hd | rfl
    · exact h.edefs_reg d hd
    · exact hu
  · intro v p hv hp
    refine h.efresh v p hv (fun hc => hp ?_)
    simp only [View.defEntry, List.map_append, List.mem_append]
    exact Or.inl hc
  · intro c hc
    simp only [View.defEntry, List.map_append, List.mem_append, List.map_cons, List.map_nil,
      List.mem_singleton] at hc ⊢
    rcases hc with hc | rfl
    · exact ⟨Or.inl (h.epend c hc).1, (h.epend c hc).2⟩
    · exact ⟨Or.inr rfl, hf⟩
  · rw [List.nodup_append]
    refine ⟨h.epend_nodup, List.nodup_singleton e, ?_⟩
    intro a ha hb
    simp only [List.mem_singleton] at hb
    subst hb
    exact he (h.epend a ha).1

theorem TreeInv.perm {V : View} {S S1 Se Se1 : List Nat} (h : TreeInv V S Se)
    (hs : S.Perm S1) (hse : Se.Perm Se1) : TreeInv V S1 Se1 :=
  ⟨h.tp_lt, h.tp_unreg, h.reg_lt, h.reg_inj, h.defs_reg, h.ereg_lt, h.ereg_inj, h.edefs_reg,
    h.beyond, h.ebeyond, h.fresh, h.efresh, fun c hc => h.pend c (hs.mem_iff.mpr hc),
    fun e he => h.epend e (hse.mem_iff.mpr he), hs.nodup_iff.mp h.pend_nodup,
    hse.nodup_iff.mp h.epend_nodup⟩

theorem View.setParent_of {V : View} {c g q : Nat} (hc : c < V.glen)
    (hp : V.parent c = .group q) (hq : q < V.glen) (hg : g < V.glen) (hne : g ≠ q) :
    V.setParent c g = { V with
      parent := Function.update V.parent c (.group g),
      children := Function.update
        (Function.update V.children q ((V.children q).filter (· ≠ c))) g
        (V.children g ++ [c]) } := by
  simp [View.setParent, View.cleanupParent, hp, View.updParent, View.updChildren, hc, hq, hg,
    Function.update_apply, hne]

theorem View.setGroup_of {V : View} {e g q : Nat} (he : e < V.elen)
    (hp : V.egroup e = some q) (hq : q < V.glen) (hg : g < V.glen) (hne : g ≠ q) :
    V.setGroup e g = { V with
      egroup := Function.update V.egroup e (some g),
      gentries := Function.update
        (Function.update V.gentries q ((V.gentries q).filter (· ≠ e))) g
        (V.gentries g ++ [e]) } := by
  have h1 : ¬ q = g := fun h => hne h.symm
  simp [View.setGroup, hp, View.updEgroup, View.updGentries, he, hq, hg,
    Function.update_apply, hne, h1]

theorem View.setRootGroup_of {V : View} {g q : Nat} (hc : g < V.glen)
    (hp : V.parent g = .group q) (hq : q < V.glen) :
    V.setRootGroup g = { V with
      parent := Function.update V.parent g .database,
      children := Function.update V.children q ((V.children q).filter (· ≠ g)),
      root := g } := by
  simp [View.setRootGroup, View.cleanupParent, hp, View.updParent, View.updChildren, hc, hq]

theorem TreeInv.adopt {V : View} {S0 cs Se : List Nat} {c g : Nat}
    (h : TreeInv V (S0 ++ c :: cs) Se) (hg : g ∈ V.gdefs.map Prod.snd) (hne : g ≠ c) :
    TreeInv (V.setParent c g) (S0 ++ cs) Se ∧
      (V.setParent c g).children g = V.children g ++ [c] ∧
      (∀ p ∈ V.gdefs.map Prod.snd, p ≠ g → (V.setParent c g).children p = V.children p) := by
  have hc := h.pend c (by simp)
  have hcl := h.def_lt hc.1
  have hgl := h.def_lt hg
  rw [View.setParent_of hcl.1 hc.2 h.tp_lt hgl.1 hgl.2]
  have hnd := h.pend_nodup
  refine ⟨⟨h.tp_lt, h.tp_unreg, h.reg_lt, h.reg_inj, h.defs_reg, h.ereg_lt, h.ereg_inj,
    h.edefs_reg, ?_, h.ebeyond, ?_, h.efresh, ?_, h.epend, ?_, h.epend_nodup⟩, ?_, ?_⟩
  · intro p hp
    have h1 := h.beyond p hp
    have h2 := h.tp_lt
    simp only at hp
    simp only [Function.update_apply]
    rw [if_neg (by omega), if_neg (by omega), if_neg (by omega)]
    exact h1
  · intro v p hv hp
    have h1 := h.fresh v p hv hp
    have h2 : p ≠ V.tp := fun e => h.tp_unreg v (e ▸ hv)
    have h3 : p ≠ c := fun e => hp (e ▸ hc.1)
    have h4 : p ≠ g := fun e => hp (e ▸ hg)
    simp only [Function.update_apply]
    rw [if_neg h3, if_neg h4, if_neg h2]
    exact h1
  · intro x hx
    have hx1 : x ∈ S0 ++ c :: cs := by
      simp only [List.mem_append, List.mem_cons] at hx ⊢
      tauto
    have h1 := h.pend x hx1
    have h3 : x ≠ c := by
      intro e
      subst e
      have := List.nodup_middle.mp hnd
      exact (List.nodup_cons.mp this).1 hx
    simp only [Function.update_apply]
    rw [if_neg h3]
    exact h1
  · have := List.nodup_middle.mp hnd
    exact (List.nodup_cons.mp this).2
  · simp [Function.update_apply]
  · intro p hp hpg
    have h2 := h.def_lt hp
    simp [Function.update_apply, hpg, h2.2]

theorem TreeInv.adoptAll {S0 Se : List Nat} {g : Nat} (hg0 : g ∈ S0) :
    ∀ (cs : List Nat) (V : View), TreeInv V (S0 ++ cs) Se →
      TreeInv (cs.foldl (fun W c => W.setParent c g) V) S0 Se ∧
      (cs.foldl (fun W c => W.setParent c g) V).children g = V.children g ++ cs ∧
      (∀ p ∈ V.gdefs.map Prod.snd, p ≠ g →
        (cs.foldl (fun W c => W.setParent c g) V).children p = V.children p) ∧
      (cs.foldl (fun W c => W.setParent c g) V).gentries = V.gentries ∧
      (cs.foldl (fun W c => W.setParent c g) V).gdefs = V.gdefs ∧
      (cs.foldl (fun W c => W.setParent c g) V).edefs = V.edefs := by
  intro cs
  induction cs with
  | nil =>
    intro V h
    exact ⟨by simpa using h, by simp, fun _ _ _ => rfl, rfl, rfl, rfl⟩
  | cons c cs ih =>
    intro V h
    have hg : g ∈ V.gdefs.map Prod.snd := (h.pend g (List.mem_append_left _ hg0)).1
    have hne : g ≠ c := by
      intro e
      subst e
      have := List.nodup_middle.mp h.pend_nodup
      exact (List.nodup_cons.mp this).1 (List.mem_append_left _ hg0)
    obtain ⟨h1, h2, h3⟩ := h.adopt hg hne
    obtain ⟨i1, i2, i3, i4, i5, i6⟩ := ih (V.setParent c g) h1
    simp only [List.foldl_cons]
    refine ⟨i1, ?_, ?_, ?_, ?_, ?_⟩
    · rw [i2, h2, List.append_assoc]
      rfl
    · intro p hp hpg
      rw [i3 p (by simpa using hp) hpg, h3 p hp hpg]
    · rw [i4]
      simp
    · rw [i5]
      simp
    · rw [i6]
      simp

theorem TreeInv.adoptEntry {V : View} {S Se0 es : List Nat} {e g : Nat}
    (h : TreeInv V S (Se0 ++ e :: es)) (hg : g ∈ V.gdefs.map Prod.snd) :
    TreeInv (V.setGroup e g) S (Se0 ++ es) ∧
      (V.setGroup e g).gentries g = V.gentries g ++ [e] ∧
      (∀ p ∈ V.gdefs.map Prod.snd, p ≠ g → (V.setGroup e g).gentries p = V.gentries p) := by
  have he := h.epend e (by simp)
  have hel := h.edef_lt he.1
  have hgl := h.def_lt hg
  rw [View.setGroup_of hel he.2 h.tp_lt hgl.1 hgl.2]
  have hnd := h.epend_nodup
  refine ⟨⟨h.tp_lt, h.tp_unreg, h.reg_lt, h.reg_inj, h.defs_reg, h.ereg_lt, h.ereg_inj,
    h.edefs_reg, ?_, ?_, ?_, ?_, h.pend, ?_, h.pend_nodup, ?_⟩, ?_, ?_⟩
  · intro p hp
    have h1 := h.beyond p hp
    have h2 := h.tp_lt
    simp only at hp
    simp only [Function.update_apply]
    rw [if_neg (by omega), if_neg (by omega)]
    exact h1
  · intro x hx
    simp only at hx
    simp only [Function.update_apply]
    rw [if_neg (by omega)]
    exact h.ebeyond x hx
  · intro v p hv hp
    have h1 := h.fresh v p hv hp
    have h2 : p ≠ V.tp := fun e => h.tp_unreg v (e ▸ hv)
    have h4 : p ≠ g := fun e => hp (e ▸ hg)
    simp only [Function.update_apply]
    rw [if_neg h4, if_neg h2]
    exact h1
  · intro v x hv hx
    have h3 : x ≠ e := fun e1 => hx (e1 ▸ he.1)
    simp only [Function.update_apply]
    rw [if_neg h3]
    exact h.efresh v x hv hx
  · intro x hx
    have hx1 : x ∈ Se0 ++ e :: es := by
      simp only [List.mem_append, List.mem_cons] at hx ⊢
      tauto
    have h1 := h.epend x hx1
    have h3 : x ≠ e := by
      intro e1
      subst e1
      have := List.nodup_middle.mp hnd
      exact (List.nodup_cons.mp this).1 hx
    simp only [Function.update_apply]
    rw [if_neg h3]
    exact h1
  · have := List.nodup_middle.mp hnd
    exact (List.nodup_cons.mp this).2
  · simp [Function.update_apply]
  · intro p hp hpg
    have h2 := h.def_lt hp
    simp [Function.update_apply, hpg, h2.2]

theorem TreeInv.adoptEntries {S Se0 : List Nat} {g : Nat} :
    ∀ (es : List Nat) (V : View), TreeInv V S (Se0 ++ es) → g ∈ V.gdefs.map Prod.snd →
      TreeInv (es.foldl (fun W e => W.setGroup e g) V) S Se0 ∧
      (es.foldl (fun W e => W.setGroup e g) V).gentries g = V.gentries g ++ es ∧
      (∀ p ∈ V.gdefs.map Prod.snd, p ≠ g →
        (es.foldl (fun W e => W.setGroup e g) V).gentries p = V.gentries p) ∧
      (es.foldl (fun W e => W.setGroup e g) V).children = V.children ∧
      (es.foldl (fun W e => W.setGroup e g) V).gdefs = V.gdefs ∧
      (es.foldl (fun W e => W.setGroup e g) V).edefs = V.edefs := by
  intro es
  induction es with
  | nil =>
    intro V h _
    exact ⟨by simpa using h, by simp, fun _ _ _ => rfl, rfl, rfl, rfl⟩
  | cons e es ih =>
    intro V h hg
    obtain ⟨h1, h2, h3⟩ := h.adoptEntry hg
    obtain ⟨i1, i2, i3, i4, i5, i6⟩ := ih (V.setGroup e g) h1 (by simpa using hg)
    simp only [List.foldl_cons]
    refine ⟨i1, ?_, ?_, ?_, ?_, ?_⟩
    · rw [i2, h2, List.append_assoc]
      rfl
    · intro p hp hpg
      rw [i3 p (by simpa using hp) hpg, h3 p hp hpg]
    · rw [i4]
      simp
    · rw [i5]
      simp
    · rw [i6]
      simp

theorem TreeInv.setRootGroup {V : View} {g : Nat} (h : TreeInv V [g] []) :
    TreeInv (V.setRootGroup g) [] [] ∧ TreeExt V (V.setRootGroup g) ∧
      (V.setRootGroup g).root = g ∧ (V.setRootGroup g).children g = V.children g ∧
      (V.setRootGroup g).gentries g = V.gentries g := by
  have hc := h.pend g (by simp)
  have hcl := h.def_lt hc.1
  rw [View.setRootGroup_of hcl.1 hc.2 h.tp_lt]
  refine ⟨⟨h.tp_lt, h.tp_unreg, h.reg_lt, h.reg_inj, h.defs_reg, h.ereg_lt, h.ereg_inj,
    h.edefs_reg, ?_, h.ebeyond, ?_, h.efresh, ?_, h.epend, List.nodup_nil, h.epend_nodup⟩,
    ⟨List.prefix_refl _, List.prefix_refl _, ?_⟩, rfl, ?_, rfl⟩
  · intro p hp
    have h1 := h.beyond p hp
    have h2 := h.tp_lt
    simp only at hp
    simp only [Function.update_apply]
    rw [if_neg (by omega), if_neg (by omega)]
    exact h1
  · intro v p hv hp
    have h1 := h.fresh v p hv hp
    have h2 : p ≠ V.tp := fun e => h.tp_unreg v (e ▸ hv)
    have h3 : p ≠ g := fun e => hp (e ▸ hc.1)
    simp only [Function.update_apply]
    rw [if_neg h3, if_neg h2]
    exact h1
  · intro x hx
    simp at hx
  · intro p hp
    have h2 := h.def_lt hp
    simp [Function.update_apply, h2.2]
  · simp [Function.update_apply, hcl.2]

/-! ### C9: the decode leaves the case of the count for good -/

theorem Stable.or {P Q : Reader → Prop} (hP : Stable P) (hQ : Stable Q) :
    Stable (fun t => P t ∨ Q t) :=
  { raiseError := fun st m h => h.imp (hP.raiseError st m) (hQ.raiseError st m)
    updGroup := fun st p f hf h => h.imp (hP.updGroup st p f hf) (hQ.updGroup st p f hf)
    updEntry := fun st p f hf h => h.imp (hP.updEntry st p f hf) (hQ.updEntry st p f hf)
    setMeta := fun st f h => h.imp (hP.setMeta st f) (hQ.setMeta st f)
    getGroup := fun st u h => h.imp (hP.getGroup st u) (hQ.getGroup st u)
    getEntry := fun st u h => h.imp (hP.getEntry st u) (hQ.getEntry st u)
    randomUuid := fun env st h => h.imp (hP.randomUuid env st) (hQ.randomUuid env st)
    cipherProcess := fun env st cs c h =>
      h.imp (hP.cipherProcess env st cs c) (hQ.cipherProcess env st cs c)
    setNullDeref := fun st hn h => h.imp (hP.setNullDeref st hn) (hQ.setNullDeref st hn)
    setXmlError := fun st h => h.imp (hP.setXmlError st) (hQ.setXmlError st)
    setHeaderHash := fun st v h => h.imp (hP.setHeaderHash st v) (hQ.setHeaderHash st v)
    setBinaryPool := fun st v h => h.imp (hP.setBinaryPool st v) (hQ.setBinaryPool st v)
    addDeletedObject := fun st d h =>
      h.imp (hP.addDeletedObject st d) (hQ.addDeletedObject st d)
    setPending := fun st q h => h.imp (hP.setPending st q) (hQ.setPending st q)
    newGroup := fun st h => h.imp (hP.newGroup st) (hQ.newGroup st)
    newEntry := fun st h => h.imp (hP.newEntry st) (hQ.newEntry st)
    defGroup := fun st u p hu h => h.imp (hP.defGroup st u p hu) (hQ.defGroup st u p hu)
    defEntry := fun st u p hu h => h.imp (hP.defEntry st u p hu) (hQ.defEntry st u p hu)
    setParent := fun st c p h => h.imp (hP.setParent st c p) (hQ.setParent st c p)
    setGroup := fun st e p h => h.imp (hP.setGroup st e p) (hQ.setGroup st e p)
    setRootGroup := fun st p h => h.imp (hP.setRootGroup st p) (hQ.setRootGroup st p)
    addBinaryRefs := fun st v h => h.imp (hP.addBinaryRefs st v) (hQ.addBinaryRefs st v) }

theorem not_nodup_append {l : List (Uuid × Nat)} (d : Uuid × Nat)
    (h : ¬ (l.map Prod.fst).Nodup) : ¬ ((l ++ [d]).map Prod.fst).Nodup := by
  intro hn
  rw [List.map_append] at hn
  exact h (List.Nodup.of_append_left hn)

/-- Once an error is raised or two elements are merged under one UUID, it
stays so. -/
theorem stable_Bad : Stable Reader.Bad :=
  Stable.or stable_m_error (Stable.or stable_xmlError (Stable.or
    (Stable.of_groups (fun _ _ d => ¬ (d.map Prod.fst).Nodup) (fun _ _ _ _ _ _ h => h)
      (fun _ _ _ _ _ _ h => h) (fun _ _ _ _ _ _ h => not_nodup_append _ h))
    (Stable.of_entries (fun _ _ d => ¬ (d.map Prod.fst).Nodup) (fun _ _ _ _ _ _ h => h)
      (fun _ _ _ _ _ _ h => h) (fun _ _ _ _ _ _ h => not_nodup_append _ h))))

theorem Reader.not_Bad {st : Reader} (h : ¬ st.Bad) :
    st.m_error = false ∧ st.xmlError = false ∧ (st.groupDefs.map Prod.fst).Nodup ∧
      (st.entryDefs.map Prod.fst).Nodup := by
  unfold Reader.Bad at h
  simp only [not_or, Bool.not_eq_true, not_not] at h
  exact h

/-- A property of the tree alone is kept by the reading of a child element
when the registry lookups keep it. -/
theorem StableLeaf.of_view (Q : View → Prop) (hg : ∀ V u, Q V → Q (V.getGroup u))
    (he : ∀ V u, Q V → Q (V.getEntry u)) : StableLeaf (fun t => Q t.view) :=
  { raiseError := fun st m h => by rw [view_raiseError]; exact h
    updGroup := fun st p f hf h => by rw [view_updGroup st p f hf]; exact h
    updEntry := fun st p f hf h => by rw [view_updEntry st p f hf]; exact h
    setMeta := fun st f h => by rw [view_setMeta]; exact h
    getGroup := fun st u h => by rw [view_getGroup]; exact hg _ u h
    getEntry := fun st u h => by rw [view_getEntry]; exact he _ u h
    randomUuid := fun env st h => by rw [view_randomUuid]; exact h
    cipherProcess := fun env st cs c h => by rw [view_cipherProcess]; exact h
    setNullDeref := fun st _ h => by rw [view_setNullDeref]; exact h
    setXmlError := fun st h => by rw [view_setXmlError]; exact h
    setHeaderHash := fun st v h => by rw [view_setHeaderHash]; exact h
    setBinaryPool := fun st v h => by rw [view_setBinaryPool]; exact h
    addDeletedObject := fun st d h => by rw [view_addDeletedObject]; exact h }

theorem StableLeaf.and {P Q : Reader → Prop} (hP : StableLeaf P) (hQ : StableLeaf Q) :
    StableLeaf (fun t => P t ∧ Q t) :=
  { raiseError := fun st m h => ⟨hP.raiseError st m h.1, hQ.raiseError st m h.2⟩
    updGroup := fun st p f hf h => ⟨hP.updGroup st p f hf h.1, hQ.updGroup st p f hf h.2⟩
    updEntry := fun st p f hf h => ⟨hP.updEntry st p f hf h.1, hQ.updEntry st p f hf h.2⟩
    setMeta := fun st f h => ⟨hP.setMeta st f h.1, hQ.setMeta st f h.2⟩
    getGroup := fun st u h => ⟨hP.getGroup st u h.1, hQ.getGroup st u h.2⟩
    getEntry := fun st u h => ⟨hP.getEntry st u h.1, hQ.getEntry st u h.2⟩
    randomUuid := fun env st h => ⟨hP.randomUuid env st h.1, hQ.randomUuid env st h.2⟩
    cipherProcess := fun env st cs c h =>
      ⟨hP.cipherProcess env st cs c h.1, hQ.cipherProcess env st cs c h.2⟩
    setNullDeref := fun st hn h => ⟨hP.setNullDeref st hn h.1, hQ.setNullDeref st hn h.2⟩
    setXmlError := fun st h => ⟨hP.setXmlError st h.1, hQ.setXmlError st h.2⟩
    setHeaderHash := fun st v h => ⟨hP.setHeaderHash st v h.1, hQ.setHeaderHash st v h.2⟩
    setBinaryPool := fun st v h => ⟨hP.setBinaryPool st v h.1, hQ.setBinaryPool st v h.2⟩
    addDeletedObject := fun st d h =>
      ⟨hP.addDeletedObject st d h.1, hQ.addDeletedObject st d h.2⟩ }

/-- The reading of a child element through its end does not move the cursor. -/
theorem stableLeaf_pending (q : List (List XmlElement)) :
    StableLeaf (fun t => t.pending = q) := by
  refine ⟨?_, ?_, ?_, ?_, ?_, ?_, ?_, ?_, ?_, ?_, ?_, ?_, ?_⟩ <;> intros <;>
    simp_all [Reader.raiseError, Reader.setMeta, Reader.randomUuid, Reader.cipherProcess]

/-- What the reading of a child element through its end keeps of the tree: its
shape, the groups and entries defined, and their child lists and entry lists. -/
theorem stableLeaf_tree (V0 : View) (S Se : List Nat) :
    StableLeaf (fun t => TreeInv t.view S Se ∧ TreeExt V0 t.view ∧
      t.view.gdefs = V0.gdefs ∧ t.view.edefs = V0.edefs ∧ t.view.root = V0.root) :=
  StableLeaf.of_view
    (fun V => TreeInv V S Se ∧ TreeExt V0 V ∧ V.gdefs = V0.gdefs ∧ V.edefs = V0.edefs ∧
      V.root = V0.root)
    (fun V u h => ⟨(h.1.getGroup u).1, h.2.1.trans (h.1.getGroup u).2,
      by rw [View.getGroup_gdefs]; exact h.2.2.1, by rw [View.getGroup_edefs]; exact h.2.2.2.1,
      by rw [View.getGroup_root]; exact h.2.2.2.2⟩)
    (fun V u h => ⟨(h.1.getEntry u).1, h.2.1.trans (h.1.getEntry u).2,
      by rw [View.getEntry_gdefs]; exact h.2.2.1, by rw [View.getEntry_edefs]; exact h.2.2.2.1,
      by rw [View.getEntry_root]; exact h.2.2.2.2⟩)

/-- The frame of a child element read through its end. -/
theorem leaf_frame {f : Reader → Reader}
    (hf : ∀ {P : Reader → Prop}, StableLeaf P → ∀ (st : Reader), P st → P (f st))
    {st : Reader} {S Se : List Nat} (h : TreeInv st.view S Se) :
    (f st).pending = st.pending ∧ TreeInv (f st).view S Se ∧ TreeExt st.view (f st).view ∧
      (f st).groupDefs = st.groupDefs ∧ (f st).entryDefs = st.entryDefs ∧
      (f st).rootGroup = st.rootGroup := by
  have h1 := hf (stableLeaf_pending st.pending) st rfl
  have h2 := hf (stableLeaf_tree st.view S Se) st ⟨h, TreeExt.refl _, rfl, rfl, rfl⟩
  exact ⟨h1, h2.1, h2.2.1, h2.2.2.1, h2.2.2.2.1, h2.2.2.2.2⟩

/-! ### C9: the end of a `Group` element and of an `Entry` element -/

theorem view_foldl_setParent (cs : List Nat) (g : Nat) (st : Reader) :
    (cs.foldl (fun s c => s.setParent c g) st).view
      = cs.foldl (fun W c => W.setParent c g) st.view := by
  induction cs generalizing st with
  | nil => rfl
  | cons c cs ih =>
    simp only [List.foldl_cons]
    rw [ih, view_setParent]

theorem view_foldl_setGroup (es : List Nat) (g : Nat) (st : Reader) :
    (es.foldl (fun s e => s.setGroup e g) st).view
      = es.foldl (fun W e => W.setGroup e g) st.view := by
  induction es generalizing st with
  | nil => rfl
  | cons e es ih =>
    simp only [List.foldl_cons]
    rw [ih, view_setGroup]

theorem Reader.Bad_of_hasError {st : Reader} (h : st.hasError = true) : st.Bad := by
  unfold Reader.hasError at h
  unfold Reader.Bad
  simp only [Bool.or_eq_true] at h
  tauto

theorem not_mem_of_nodup_append {l : List (Uuid × Nat)} {u : Uuid} {g : Nat}
    (h : ((l ++ [(u, g)]).map Prod.fst).Nodup) : u ∉ l.map Prod.fst := by
  rw [List.map_append, List.nodup_append] at h
  intro hu
  exact h.2.2 hu (by simp)

/-- The merge at the end of a `Group` element, in a decode that stays in the
case of the count: the group kept is the registry's, it is defined now and not
before, it waits to be attached, and it has no child and no entry yet. -/
theorem mergeGroup_tree {tmp : Nat} {st : Reader} {S Se : List Nat}
    (h : TreeInv st.view S Se) (hnb : ¬ (mergeGroup tmp st).2.Bad) :
    (mergeGroup tmp st).2.pending = st.pending ∧
    TreeInv (mergeGroup tmp st).2.view (S ++ [(mergeGroup tmp st).1]) Se ∧
    TreeExt st.view (mergeGroup tmp st).2.view ∧
    (mergeGroup tmp st).1 ∈ (mergeGroup tmp st).2.view.gdefs.map Prod.snd ∧
    (mergeGroup tmp st).1 ∉ st.view.gdefs.map Prod.snd ∧
    (mergeGroup tmp st).2.view.children (mergeGroup tmp st).1 = [] ∧
    (mergeGroup tmp st).2.view.gentries (mergeGroup tmp st).1 = [] ∧
    (mergeGroup tmp st).2.groupDefs.length = st.groupDefs.length + 1 ∧
    (mergeGroup tmp st).2.entryDefs = st.entryDefs := by
  by_cases hu : (st.group tmp).m_uuid.isNull = false
  · obtain ⟨g, h1, -, h3, -, -⟩ := getGroup_spec (st.group tmp).m_uuid st hu
    have hg : getGroup (st.group tmp).m_uuid st
        = (some g, (getGroup (st.group tmp).m_uuid st).2) := by
      rw [← h1]
    rw [mergeGroup_eq tmp st g _ hu hg] at hnb ⊢
    have hv : ((((getGroup (st.group tmp).m_uuid st).2.updGroup g
        (fun x => x.copyDataFrom ((getGroup (st.group tmp).m_uuid st).2.group tmp))).updGroup g
        (fun x => { x with m_updateTimeinfo := false })).deleteGroup tmp).view
        = st.view.getGroup (st.group tmp).m_uuid := by
      unfold Reader.deleteGroup
      rw [view_updGroup _ _ _ (by intro _; rfl), view_updGroup _ _ _ (by intro _; rfl),
        view_updGroup _ _ _ (by intro _; rfl), view_getGroup]
    have hi := (h.getGroup (st.group tmp).m_uuid)
    have hnd := (Reader.not_Bad hnb).2.2.1
    have hnd1 : (st.group tmp).m_uuid ∉ st.groupDefs.map Prod.fst := by
      apply not_mem_of_nodup_append (g := g)
      simpa using hnd
    have hreg : mapGet (st.group tmp).m_uuid (st.view.getGroup (st.group tmp).m_uuid).reg
        = some g := by
      rw [← view_getGroup]
      exact h3
    have hgn : g ∉ (st.view.getGroup (st.group tmp).m_uuid).gdefs.map Prod.snd := by
      intro hc
      obtain ⟨v, hv1, hv2⟩ := hi.1.mem_reg hc
      have := hi.1.reg_inj _ _ _ hv2 hreg
      subst this
      rw [View.getGroup_gdefs] at hv1
      exact hnd1 (List.mem_map.mpr ⟨_, hv1, rfl⟩)
    obtain ⟨d1, d2, d3, d4⟩ := hi.1.defGroup hreg hgn
    simp only
    rw [view_defGroup, hv]
    refine ⟨by simp, d1, hi.2.trans d2, ?_, ?_, d3, d4, by simp, by simp⟩
    · simp [View.defGroup]
    · rw [View.getGroup_gdefs] at hgn
      exact hgn
  · exfalso
    apply hnb
    unfold mergeGroup
    simp only [Bool.not_eq_false] at hu
    simp only [hu, Bool.not_true, Bool.false_eq_true, if_false]
    split
    · exact Or.inl (by simp [Reader.raiseError])
    · rename_i he
      simp only [Bool.not_eq_true, Bool.not_eq_false', Bool.not_eq_eq_eq_not, Bool.not_true,
        Bool.not_false] at he
      exact Reader.Bad_of_hasError (by simpa using he)

/-- The end of a `Group` element, in a decode that stays in the case of the
count: the group kept is defined now, waits to be attached, and has the groups
and entries read from the children of the element as its child list and entry
list; the groups defined before keep theirs. -/
theorem parseGroupFinish_tree {env : Env} {l : GroupLocals} {st : Reader}
    {cs : List XmlElement} {S Se : List Nat}
    (h : TreeInv st.view (S ++ l.children) (Se ++ l.entries))
    (hb : BuiltList st.view cs l.children l.entries)
    (hnb : ¬ (parseGroupFinish env l st).2.Bad) :
    (parseGroupFinish env l st).2.pending = st.pending ∧
    TreeInv (parseGroupFinish env l st).2.view (S ++ [(parseGroupFinish env l st).1]) Se ∧
    TreeExt st.view (parseGroupFinish env l st).2.view ∧
    (parseGroupFinish env l st).1 ∈ (parseGroupFinish env l st).2.view.gdefs.map Prod.snd ∧
    BuiltList (parseGroupFinish env l st).2.view cs
      ((parseGroupFinish env l st).2.view.children (parseGroupFinish env l st).1)
      ((parseGroupFinish env l st).2.view.gentries (parseGroupFinish env l st).1) ∧
    (parseGroupFinish env l st).2.groupDefs.length = st.groupDefs.length + 1 ∧
    (parseGroupFinish env l st).2.entryDefs = st.entryDefs := by
  have hr : parseGroupFinish env l st =
      ((mergeGroup l.group (ensureGroupUuid env l.group st)).1,
        l.entries.foldl (fun s e => s.setGroup e
            (mergeGroup l.group (ensureGroupUuid env l.group st)).1)
          (l.children.foldl (fun s c => s.setParent c
              (mergeGroup l.group (ensureGroupUuid env l.group st)).1)
            (mergeGroup l.group (ensureGroupUuid env l.group st)).2)) := rfl
  rw [hr] at hnb ⊢
  generalize hm : mergeGroup l.group (ensureGroupUuid env l.group st) = m at hnb ⊢
  obtain ⟨e1, e2, e3, e4, e5, -⟩ := leaf_frame (f := ensureGroupUuid env l.group)
    (fun hP _ hs => ensureGroupUuid_stable hP hs) h
  have hnb2 : ¬ m.2.Bad := fun hbad =>
    hnb (foldl_stable (fun _ _ hs => stable_Bad.setGroup _ _ _ hs)
      (foldl_stable (fun _ _ hs => stable_Bad.setParent _ _ _ hs) hbad))
  obtain ⟨m1, m2, m3, m4, m5, m6, m7, m8, m9⟩ := @mergeGroup_tree l.group _ _ _ e2
    (by rw [hm]; exact hnb2)
  rw [hm] at m1 m2 m3 m4 m5 m6 m7 m8 m9
  have hp : TreeInv m.2.view ((S ++ [m.1]) ++ l.children) (Se ++ l.entries) := by
    refine m2.perm ?_ (List.Perm.refl _)
    simp only [List.append_assoc]
    exact List.Perm.append_left _ List.perm_append_comm
  obtain ⟨a1, a2, a3, a4, a5, a6⟩ :=
    TreeInv.adoptAll (g := m.1) (by simp) l.children m.2.view hp
  obtain ⟨b1, b2, b3, b4, b5, b6⟩ :=
    TreeInv.adoptEntries (g := m.1) l.entries _ a1 (by rw [a5]; exact m4)
  simp only
  rw [view_foldl_setGroup, view_foldl_setParent]
  have hx : TreeExt st.view (List.foldl (fun W e => W.setGroup e m.1)
      (List.foldl (fun W c => W.setParent c m.1) m.2.view l.children) l.entries) := by
    have h13 := e3.trans m3
    refine ⟨?_, ?_, ?_⟩
    · rw [b5, a5]
      exact h13.gdefs
    · rw [b6, a6]
      exact h13.edefs
    · intro p hp1
      have hp2 : p ∈ (ensureGroupUuid env l.group st).view.gdefs.map Prod.snd := by
        show p ∈ (ensureGroupUuid env l.group st).groupDefs.map Prod.snd
        rw [e4]
        exact hp1
      have hne : p ≠ m.1 := fun e => m5 (e ▸ hp2)
      have hp3 : p ∈ m.2.view.gdefs.map Prod.snd := by
        obtain ⟨D, hD⟩ := h13.gdefs
        rw [← hD, List.map_append, List.mem_append]
        exact Or.inl hp1
      have k := h13.kids p hp1
      refine ⟨?_, ?_⟩
      · rw [b4, a3 p hp3 hne]
        exact k.1
      · rw [b3 p (by rw [a5]; exact hp3) hne, a4]
        exact k.2
  refine ⟨?_, b1, hx, ?_, ?_, ?_, ?_⟩
  · simp only [foldl_setGroup_pending, foldl_setParent_pending]
    rw [m1, e1]
  · rw [b5, a5]
    exact m4
  · rw [b2, b4, a2, a4, m6, m7, List.nil_append, List.nil_append]
    exact BuiltList.frame hx _ _ _ hb
  · have : (List.foldl (fun s e => s.setGroup e m.1)
        (List.foldl (fun s c => s.setParent c m.1) m.2 l.children) l.entries).groupDefs
        = m.2.groupDefs := by simp
    rw [this, m8, e4]
  · have : (List.foldl (fun s e => s.setGroup e m.1)
        (List.foldl (fun s c => s.setParent c m.1) m.2 l.children) l.entries).entryDefs
        = m.2.entryDefs := by simp
    rw [this, m9, e5]

/-- The merge at the end of an `Entry` element outside history, in a decode
that stays in the case of the count: the entry kept is the registry's, it is
defined now, and it waits to be attached. -/
theorem mergeEntry_tree {tmp : Nat} {st : Reader} {S Se : List Nat}
    (h : TreeInv st.view S Se) (hnb : ¬ (mergeEntry false tmp st).2.Bad) :
    (mergeEntry false tmp st).2.pending = st.pending ∧
    TreeInv (mergeEntry false tmp st).2.view S (Se ++ [(mergeEntry false tmp st).1]) ∧
    TreeExt st.view (mergeEntry false tmp st).2.view ∧
    (mergeEntry false tmp st).2.groupDefs = st.groupDefs := by
  by_cases hu : (st.entry tmp).m_uuid.isNull = false
  · obtain ⟨e, h1, -, h3, -, -⟩ := getEntry_spec (st.entry tmp).m_uuid st hu
    have hg : getEntry (st.entry tmp).m_uuid st
        = (some e, (getEntry (st.entry tmp).m_uuid st).2) := by
      rw [← h1]
    rw [mergeEntry_eq tmp st e _ hu hg] at hnb ⊢
    have hv : ((((getEntry (st.entry tmp).m_uuid st).2.updEntry e
        (fun x => x.copyDataFrom ((getEntry (st.entry tmp).m_uuid st).2.entry tmp))).updEntry e
        (fun x => { x with m_updateTimeinfo := false })).deleteEntry tmp).view
        = st.view.getEntry (st.entry tmp).m_uuid := by
      unfold Reader.deleteEntry
      rw [view_updEntry _ _ _ (by intro _; rfl), view_updEntry _ _ _ (by intro _; rfl),
        view_updEntry _ _ _ (by intro _; rfl), view_getEntry]
    have hi := (h.getEntry (st.entry tmp).m_uuid)
    have hnd := (Reader.not_Bad hnb).2.2.2
    have hnd1 : (st.entry tmp).m_uuid ∉ st.entryDefs.map Prod.fst := by
      apply not_mem_of_nodup_append (g := e)
      simpa using hnd
    have hreg : mapGet (st.entry tmp).m_uuid (st.view.getEntry (st.entry tmp).m_uuid).ereg
        = some e := by
      rw [← view_getEntry]
      exact h3
    have hgn : e ∉ (st.view.getEntry (st.entry tmp).m_uuid).edefs.map Prod.snd := by
      intro hc
      obtain ⟨v, hv1, hv2⟩ := hi.1.mem_ereg hc
      have := hi.1.ereg_inj _ _ _ hv2 hreg
      subst this
      rw [View.getEntry_edefs] at hv1
      exact hnd1 (List.mem_map.mpr ⟨_, hv1, rfl⟩)
    obtain ⟨d1, d2⟩ := hi.1.defEntry hreg hgn
    simp only
    rw [view_defEntry, hv]
    exact ⟨by simp, d1, hi.2.trans d2, by simp⟩
  · exfalso
    apply hnb
    unfold mergeEntry
    simp only [Bool.not_eq_false] at hu
    simp only [hu, Bool.not_true, Bool.false_eq_true, if_false]
    split
    · exact Or.inl (by simp [Reader.raiseError])
    · rename_i he
      simp only [Bool.not_eq_true, Bool.not_eq_false', Bool.not_eq_eq_eq_not, Bool.not_true,
        Bool.not_false] at he
      exact Reader.Bad_of_hasError (by simpa using he)

/-- The end of an entry of a history changes nothing of the tree. -/
theorem mergeEntry_history (tmp : Nat) (st : Reader) :
    (mergeEntry true tmp st).2.pending = st.pending ∧
    (mergeEntry true tmp st).2.view = st.view ∧
    (mergeEntry true tmp st).2.groupDefs = st.groupDefs := by
  unfold mergeEntry
  simp only [if_true]
  split
  · exact ⟨by simp, view_updEntry _ _ _ (by intro _; rfl), by simp⟩
  · split
    · exact ⟨by simp [Reader.raiseError], view_raiseError _ _, by simp [Reader.raiseError]⟩
    · exact ⟨rfl, rfl, rfl⟩

/-- The end of an `Entry` element, in a decode that stays in the case of the
count: outside history the entry kept is defined now and waits to be attached;
in a history nothing of the tree changes. -/
theorem parseEntryFinish_tree {env : Env} {history : Bool} {l : EntryLocals} {st : Reader}
    {S Se : List Nat} (h : TreeInv st.view S Se)
    (hnb : ¬ (parseEntryFinish env history l st).2.Bad) :
    (parseEntryFinish env history l st).2.pending = st.pending ∧
    TreeInv (parseEntryFinish env history l st).2.view S
      (if history then Se else Se ++ [(parseEntryFinish env history l st).1]) ∧
    TreeExt st.view (parseEntryFinish env history l st).2.view ∧
    (parseEntryFinish env history l st).2.groupDefs = st.groupDefs := by
  have hr : parseEntryFinish env history l st =
      ((mergeEntry history l.entry (ensureEntryUuid env l.entry st)).1,
        (addHistoryItems (mergeEntry history l.entry (ensureEntryUuid env l.entry st)).1
          l.historyItems
          (mergeEntry history l.entry (ensureEntryUuid env l.entry st)).2).addBinaryRefs
          (l.binaryRefs.map (fun ref =>
            (ref.1, (mergeEntry history l.entry (ensureEntryUuid env l.entry st)).1, ref.2))))
      := rfl
  rw [hr] at hnb ⊢
  generalize hm : mergeEntry history l.entry (ensureEntryUuid env l.entry st) = m at hnb ⊢
  obtain ⟨e1, e2, e3, e4, e5, -⟩ := leaf_frame (f := ensureEntryUuid env l.entry)
    (fun hP _ hs => ensureEntryUuid_stable hP hs) h
  have hnb2 : ¬ m.2.Bad := fun hbad =>
    hnb (stable_Bad.addBinaryRefs _ _ (addHistoryItems_stable stable_Bad.toStableLeaf hbad))
  have key : m.2.pending = st.pending ∧
      TreeInv m.2.view S (if history then Se else Se ++ [m.1]) ∧
      TreeExt st.view m.2.view ∧ m.2.groupDefs = st.groupDefs := by
    cases history with
    | true =>
      obtain ⟨k1, k2, k3⟩ := mergeEntry_history l.entry (ensureEntryUuid env l.entry st)
      rw [hm] at k1 k2 k3
      refine ⟨k1.trans e1, ?_, ?_, k3.trans e4⟩
      · rw [k2]
        exact e2
      · rw [k2]
        exact e3
    | false =>
      obtain ⟨k1, k2, k3, k4⟩ := @mergeEntry_tree l.entry _ _ _ e2 (by rw [hm]; exact hnb2)
      rw [hm] at k1 k2 k3 k4
      exact ⟨k1.trans e1, k2, e3.trans k3, k4.trans e4⟩
  obtain ⟨f1, f2, f3, f4, f5, -⟩ := leaf_frame (f := addHistoryItems m.1 l.historyItems)
    (fun hP _ hs => addHistoryItems_stable hP hs) key.2.1
  simp only
  rw [view_addBinaryRefs]
  refine ⟨?_, f2, key.2.2.1.trans f3, ?_⟩
  · simp only [Reader.addBinaryRefs]
    rw [f1, key.1]
  · simp only [Reader.addBinaryRefs]
    rw [f4, key.2.2.2]

/-! ### C9: the tree through the recursive parse functions -/

theorem readNextStartElement_nil {st : Reader} {up : List (List XmlElement)}
    (hx : st.xmlError = false) (hp : st.pending = [] :: up) :
    readNextStartElement st = (none, st.setPending up) := by
  simp [readNextStartElement, hx, hp]

theorem readNextStartElement_cons {st : Reader} {x : XmlElement} {rest : List XmlElement}
    {up : List (List XmlElement)} (hx : st.xmlError = false)
    (hp : st.pending = (x :: rest) :: up) :
    readNextStartElement st = (some x, st.setPending (x.children :: rest :: up)) := by
  simp [readNextStartElement, hx, hp]

theorem endElement_pending {st : Reader} {c : List XmlElement} {up : List (List XmlElement)}
    (hp : st.pending = c :: up) : st.endElement.pending = up := by
  simp [Reader.endElement, hp]

theorem view_endElement (st : Reader) : st.endElement.view = st.view := by
  unfold Reader.endElement
  exact view_setPending _ _

theorem entry_tree (env : Env) (n : Nat) :
    (∀ history l st r cs up S Se, st.pending = cs :: up → TreeInv st.view S Se →
      parseEntryWhile env n history l st = some r → ¬ r.2.Bad →
      r.2.pending = up ∧ TreeInv r.2.view S Se ∧ TreeExt st.view r.2.view ∧
        r.2.groupDefs = st.groupDefs) ∧
    (∀ history st r cs up S Se, st.pending = cs :: up → TreeInv st.view S Se →
      parseEntry env n history st = some r → ¬ r.2.Bad →
      r.2.pending = up ∧ TreeInv r.2.view S (if history then Se else Se ++ [r.1]) ∧
        TreeExt st.view r.2.view ∧ r.2.groupDefs = st.groupDefs) ∧
    (∀ items st r cs up S Se, st.pending = cs :: up → TreeInv st.view S Se →
      parseEntryHistoryWhile env n items st = some r → ¬ r.2.Bad →
      r.2.pending = up ∧ TreeInv r.2.view S Se ∧ TreeExt st.view r.2.view ∧
        r.2.groupDefs = st.groupDefs) ∧
    (∀ st r cs up S Se, st.pending = cs :: up → TreeInv st.view S Se →
      parseEntryHistory env n st = some r → ¬ r.2.Bad →
      r.2.pending = up ∧ TreeInv r.2.view S Se ∧ TreeExt st.view r.2.view ∧
        r.2.groupDefs = st.groupDefs) := by
  induction n with
  | zero => simp [parseEntryWhile, parseEntry, parseEntryHistoryWhile, parseEntryHistory]
  | succ n ih =>
    obtain ⟨ihW, ihE, ihHW, ihH⟩ := ih
    have sb := parseEntry_stable_aux stable_Bad env n
    refine ⟨?_, ?_, ?_, ?_⟩
    · intro history l st r cs up S Se hp hi hr hnb
      have hst : ¬ st.Bad := fun hb =>
        hnb ((parseEntry_stable_aux stable_Bad env (n + 1)).1 _ _ _ _ hb hr)
      have hx := (Reader.not_Bad hst).2.1
      unfold parseEntryWhile at hr
      cases cs with
      | nil =>
        rw [readNextStartElement_nil hx hp] at hr
        simp only [Option.some.injEq] at hr
        subst hr
        exact ⟨rfl, by rw [view_setPending]; exact hi,
          by rw [view_setPending]; exact TreeExt.refl _, rfl⟩
      | cons x rest =>
        rw [readNextStartElement_cons hx hp] at hr
        simp only at hr
        have hi1 : TreeInv (st.setPending (x.children :: rest :: up)).view S Se := by
          rw [view_setPending]
          exact hi
        split at hr
        · split at hr
          · exact absurd (sb.1 _ _ _ _ (Or.inl (by simp [Reader.raiseError])) hr) hnb
          · split at hr
            · cases hr
            · rename_i items st2 hh
              have hnb2 : ¬ st2.Bad := fun hb => hnb (sb.1 _ _ _ _ hb hr)
              obtain ⟨a1, a2, a3, a4⟩ := ihH _ _ _ _ S Se rfl hi1 hh hnb2
              obtain ⟨b1, b2, b3, b4⟩ := ihW _ _ _ _ _ _ S Se a1 a2 hr hnb
              rw [view_setPending] at a3
              exact ⟨b1, b2, a3.trans b3, b4.trans a4⟩
        · obtain ⟨f1, f2, f3, f4, f5, -⟩ := leaf_frame
            (f := fun s => (parseEntryField env l.entry x (l.binaryRefs, s)).2)
            (fun hP _ hs => parseEntryField_stable hP hs) hi1
          obtain ⟨b1, b2, b3, b4⟩ := ihW _ _ _ _ _ _ S Se
            (endElement_pending f1) (by rw [view_endElement]; exact f2) hr hnb
          rw [view_endElement] at b3
          rw [view_setPending] at f3
          refine ⟨b1, b2, f3.trans b3, b4.trans ?_⟩
          simp only [Reader.endElement, Reader.setPending] at f4 ⊢
          exact f4
    · intro history st r cs up S Se hp hi hr hnb
      unfold parseEntry at hr
      simp only at hr
      split at hr
      · cases hr
      · rename_i l st3 hw
        cases hr
        have hnb3 : ¬ st3.Bad := fun hb => hnb (parseEntryFinish_stable stable_Bad hb)
        have hv0 : (st.newEntry.2.updEntry st.newEntry.1
            (fun e => { e with m_updateTimeinfo := false })).view = st.view.newEntry := by
          rw [view_updEntry _ _ _ (by intro _; rfl), view_newEntry]
        obtain ⟨a1, a2, a3, a4⟩ := ihW _ _ _ _ cs up S Se
          (by simpa [Reader.newEntry] using hp) (by rw [hv0]; exact hi.newEntry) hw hnb3
        obtain ⟨b1, b2, b3, b4⟩ := @parseEntryFinish_tree env history l _ _ _
          a2 hnb
        rw [hv0] at a3
        refine ⟨b1.trans a1, b2, ((TreeExt.afterNewEntry _).trans a3).trans b3, b4.trans ?_⟩
        rw [a4]
        simp [Reader.newEntry]
    · intro items st r cs up S Se hp hi hr hnb
      have hst : ¬ st.Bad := fun hb =>
        hnb ((parseEntry_stable_aux stable_Bad env (n + 1)).2.2.1 _ _ _ hb hr)
      have hx := (Reader.not_Bad hst).2.1
      unfold parseEntryHistoryWhile at hr
      cases cs with
      | nil =>
        rw [readNextStartElement_nil hx hp] at hr
        simp only [Option.some.injEq] at hr
        subst hr
        exact ⟨rfl, by rw [view_setPending]; exact hi,
          by rw [view_setPending]; exact TreeExt.refl _, rfl⟩
      | cons x rest =>
        rw [readNextStartElement_cons hx hp] at hr
        simp only at hr
        have hi1 : TreeInv (st.setPending (x.children :: rest :: up)).view S Se := by
          rw [view_setPending]
          exact hi
        split at hr
        · split at hr
          · cases hr
          · rename_i e st2 he
            have hnb2 : ¬ st2.Bad := fun hb => hnb (sb.2.2.1 _ _ _ hb hr)
            obtain ⟨a1, a2, a3, a4⟩ := ihE _ _ _ _ _ S Se rfl hi1 he hnb2
            simp only [if_true] at a2
            obtain ⟨b1, b2, b3, b4⟩ := ihHW _ _ _ _ _ S Se a1 a2 hr hnb
            rw [view_setPending] at a3
            exact ⟨b1, b2, a3.trans b3, b4.trans a4⟩
        · have hp1 : (skipCurrentElement (st.setPending (x.children :: rest :: up))).pending
              = rest :: up := by
            simp [skipCurrentElement, Reader.endElement]
          have hv1 : (skipCurrentElement (st.setPending (x.children :: rest :: up))).view
              = st.view := by
            unfold skipCurrentElement
            rw [view_endElement, view_setPending]
          obtain ⟨b1, b2, b3, b4⟩ := ihHW _ _ _ _ _ S Se hp1 (by rw [hv1]; exact hi) hr hnb
          rw [hv1] at b3
          exact ⟨b1, b2, b3, b4.trans (by simp [skipCurrentElement, Reader.endElement])⟩
    · intro st r cs up S Se hp hi hr hnb
      unfold parseEntryHistory at hr
      exact ihHW _ _ _ _ _ S Se hp hi hr hnb

theorem group_tree (env : Env) (n : Nat) :
    (∀ l st r cs1 cs2 up S Se, st.pending = cs2 :: up →
      TreeInv st.view (S ++ l.children) (Se ++ l.entries) →
      BuiltList st.view cs1 l.children l.entries →
      parseGroupWhile env n l st = some r → ¬ r.2.Bad →
      r.2.pending = up ∧ TreeInv r.2.view (S ++ r.1.children) (Se ++ r.1.entries) ∧
        TreeExt st.view r.2.view ∧ BuiltList r.2.view (cs1 ++ cs2) r.1.children r.1.entries ∧
        r.2.groupDefs.length = st.groupDefs.length + countGroupsList cs2) ∧
    (∀ st r cs up S Se, st.pending = cs :: up → TreeInv st.view S Se →
      parseGroup env n st = some r → ¬ r.2.Bad →
      r.2.pending = up ∧ TreeInv r.2.view (S ++ [r.1]) Se ∧ TreeExt st.view r.2.view ∧
        r.1 ∈ r.2.view.gdefs.map Prod.snd ∧
        BuiltList r.2.view cs (r.2.view.children r.1) (r.2.view.gentries r.1) ∧
        r.2.groupDefs.length = st.groupDefs.length + 1 + countGroupsList cs) := by
  induction n with
  | zero => simp [parseGroupWhile, parseGroup]
  | succ n ih =>
    obtain ⟨ihW, ihG⟩ := ih
    have sb := parseGroup_stable_aux stable_Bad env n
    refine ⟨?_, ?_⟩
    · intro l st r cs1 cs2 up S Se hp hi hb hr hnb
      have hst : ¬ st.Bad := fun hbad =>
        hnb ((parseGroup_stable_aux stable_Bad env (n + 1)).1 _ _ _ hbad hr)
      have hx := (Reader.not_Bad hst).2.1
      unfold parseGroupWhile at hr
      cases cs2 with
      | nil =>
        rw [readNextStartElement_nil hx hp] at hr
        simp only [Option.some.injEq] at hr
        subst hr
        simp only [view_setPending, List.append_nil]
        exact ⟨rfl, hi, TreeExt.refl _, hb, by simp [countGroupsList]⟩
      | cons x rest =>
        rw [readNextStartElement_cons hx hp] at hr
        simp only at hr
        have hi1 : TreeInv (st.setPending (x.children :: rest :: up)).view
            (S ++ l.children) (Se ++ l.entries) := by
          rw [view_setPending]
          exact hi
        have hcs : cs1 ++ x :: rest = (cs1 ++ [x]) ++ rest := by simp
        rw [hcs, countGroupsList_cons]
        split at hr
        · rename_i hname
          split at hr
          · cases hr
          · rename_i g st2 hg
            have hnb2 : ¬ st2.Bad := fun hbad => hnb (sb.1 _ _ _ hbad hr)
            obtain ⟨a1, a2, a3, a4, a5, a6⟩ := ihG _ _ _ _ _ _ rfl hi1 hg hnb2
            rw [view_setPending] at a3
            simp only at a1 a2 a3 a4 a5 a6
            obtain ⟨b1, b2, b3, b4, b5⟩ := ihW { l with children := l.children ++ [g] } _ _
              (cs1 ++ [x]) rest up S Se a1
              (by simpa [List.append_assoc] using a2)
              (BuiltList.snoc_group hname a4 a5 _ _ _ (BuiltList.frame a3 _ _ _ hb)) hr hnb
            refine ⟨b1, b2, a3.trans b3, b4, ?_⟩
            rw [b5, a6, if_pos hname]
            simp only [Reader.setPending]
            omega
        · rename_i hname
          split at hr
          · rename_i hname2
            split at hr
            · cases hr
            · rename_i e st2 he
              have hnb2 : ¬ st2.Bad := fun hbad => hnb (sb.1 _ _ _ hbad hr)
              obtain ⟨a1, a2, a3, a4⟩ := (entry_tree env n).2.1 _ _ _ _ _ _ _ rfl hi1 he hnb2
              rw [view_setPending] at a3
              simp only [Bool.false_eq_true, if_false] at a1 a2 a3 a4
              obtain ⟨b1, b2, b3, b4, b5⟩ := ihW { l with entries := l.entries ++ [e] } _ _
                (cs1 ++ [x]) rest up S Se a1
                (by simpa [List.append_assoc] using a2)
                (BuiltList.snoc_entry e hname hname2 _ _ _ (BuiltList.frame a3 _ _ _ hb)) hr hnb
              refine ⟨b1, b2, a3.trans b3, b4, ?_⟩
              rw [b5, a4, if_neg hname]
              simp only [Reader.setPending]
              omega
          · rename_i hname2
            obtain ⟨f1, f2, f3, f4, f5, -⟩ := leaf_frame
              (f := fun s => parseGroupField env l.group x s)
              (fun hP _ hs => parseGroupField_stable hP hs) hi1
            rw [view_setPending] at f3
            obtain ⟨b1, b2, b3, b4, b5⟩ := ihW _ _ _ (cs1 ++ [x]) rest up S Se
              (endElement_pending f1) (by rw [view_endElement]; exact f2)
              (by
                rw [view_endElement]
                exact BuiltList.snoc_other hname hname2 _ _ _ (BuiltList.frame f3 _ _ _ hb))
              hr hnb
            rw [view_endElement] at b3
            refine ⟨b1, b2, f3.trans b3, b4, ?_⟩
            rw [b5, if_neg hname]
            simp only [Reader.endElement, Reader.setPending] at f4 ⊢
            rw [f4]
            omega
    · intro st r cs up S Se hp hi hr hnb
      unfold parseGroup at hr
      simp only at hr
      split at hr
      · cases hr
      · rename_i l st3 hw
        cases hr
        have hnb3 : ¬ st3.Bad := fun hbad => hnb (parseGroupFinish_stable stable_Bad hbad)
        have hv0 : (st.newGroup.2.updGroup st.newGroup.1
            (fun g => { g with m_updateTimeinfo := false })).view = st.view.newGroup := by
          rw [view_updGroup _ _ _ (by intro _; rfl), view_newGroup]
        obtain ⟨a1, a2, a3, a4, a5⟩ := ihW _ _ _ [] cs up S Se
          (by simpa [Reader.newGroup] using hp)
          (by rw [hv0]; simpa using hi.newGroup)
          ((BuiltList_nil _ _ _).mpr ⟨rfl, rfl⟩) hw hnb3
        obtain ⟨b1, b2, b3, b4, b5, b6, b7⟩ := @parseGroupFinish_tree env _ _ _ _ _ a2 a4 hnb
        rw [hv0] at a3
        refine ⟨b1.trans a1, b2, ((TreeExt.afterNewGroup _).trans a3).trans b3, b4,
          by simpa using b5, ?_⟩
        rw [b6, a5]
        simp [Reader.newGroup]
        omega

/-! ### C9: the tree through `parseRoot` and `parseKeePassFile` -/

theorem RootBuilt.carry {st t : Reader} {gs : List XmlElement} (h : RootBuilt st gs)
    (he : TreeExt st.view t.view) (hr : t.rootGroup = st.rootGroup)
    (hd : t.groupDefs = st.groupDefs) : RootBuilt t gs := by
  refine ⟨?_, ?_⟩
  · rw [hr]
    exact BuiltList.frame he _ _ _ h.1
  · rw [hd]
    exact h.2

theorem filter_snoc_of_not {p : XmlElement → Bool} {x : XmlElement} (xs : List XmlElement)
    (h : p x = false) : (xs ++ [x]).filter p = xs.filter p := by
  simp [List.filter_append, h]

theorem root_tree (env : Env) (n : Nat) :
    ∀ l st r cs1 cs2 up, st.pending = cs2 :: up → TreeInv st.view [] [] →
      RootRead l st cs1 → parseRootWhile env n l st = some r → ¬ r.2.Bad →
      r.2.pending = up ∧ TreeInv r.2.view [] [] ∧ RootRead r.1 r.2 (cs1 ++ cs2) := by
  induction n with
  | zero => simp [parseRootWhile]
  | succ n ih =>
    have sb := parseRootWhile_stable stable_Bad env n
    intro l st r cs1 cs2 up hp hi hrd hr hnb
    have hst : ¬ st.Bad := fun hbad =>
      hnb (parseRootWhile_stable stable_Bad env (n + 1) _ _ _ hbad hr)
    have hx := (Reader.not_Bad hst).2.1
    unfold parseRootWhile at hr
    cases cs2 with
    | nil =>
      rw [readNextStartElement_nil hx hp] at hr
      simp only [Option.some.injEq] at hr
      subst hr
      simp only [view_setPending, List.append_nil]
      exact ⟨rfl, hi, hrd⟩
    | cons x rest =>
      rw [readNextStartElement_cons hx hp] at hr
      simp only at hr
      have hi1 : TreeInv (st.setPending (x.children :: rest :: up)).view [] [] := by
        rw [view_setPending]
        exact hi
      have hcs : cs1 ++ x :: rest = (cs1 ++ [x]) ++ rest := by simp
      rw [hcs]
      split at hr
      · rename_i hname
        split at hr
        · exact absurd (sb _ _ _ (Or.inl (by simp [Reader.raiseError])) hr) hnb
        · rename_i hfound
          simp only [Bool.not_eq_true] at hfound
          split at hr
          · cases hr
          · rename_i g st2 hg
            have hnb4 : ¬ ((st2.setRootGroup g).deleteGroup st2.rootGroup).Bad :=
              fun hbad => hnb (sb _ _ _ hbad hr)
            have hnb2 : ¬ st2.Bad := fun hbad =>
              hnb4 (Reader.deleteGroup_stable stable_Bad.toStableLeaf
                (stable_Bad.setRootGroup _ _ hbad))
            obtain ⟨a1, a2, a3, a4, a5, a6⟩ :=
              (group_tree env n).2 _ _ _ _ [] [] rfl hi1 hg hnb2
            simp only [List.nil_append] at a1 a2 a3 a4 a5 a6
            obtain ⟨c1, c2, c3, c4, c5⟩ := a2.setRootGroup
            have hv4 : ((st2.setRootGroup g).deleteGroup st2.rootGroup).view
                = st2.view.setRootGroup g := by
              unfold Reader.deleteGroup
              rw [view_updGroup _ _ _ (by intro _; rfl), view_setRootGroup]
            have h0 := hrd.1 hfound
            refine ih _ _ _ (cs1 ++ [x]) rest up (by simpa using a1) (by rw [hv4]; exact c1)
              ⟨fun hc => by simp at hc, fun _ => ⟨?_, ?_⟩⟩ hr hnb
            · have hf : (cs1 ++ [x]).filter (fun g => g.name = "Group") = [x] := by
                rw [List.filter_append, h0.2.1]
                simp [hname]
              rw [hf, hv4, BuiltList_cons, if_pos hname]
              have hroot : ((st2.setRootGroup g).deleteGroup st2.rootGroup).rootGroup = g := by
                show ((st2.setRootGroup g).deleteGroup st2.rootGroup).view.root = g
                rw [hv4]
                exact c3
              refine ⟨g, [], by rw [hroot], by simpa using a4, ?_,
                (BuiltList_nil _ _ _).mpr ⟨rfl, rfl⟩⟩
              rw [c4, c5]
              exact BuiltList.frame c2 _ _ _ a5
            · have hf : (cs1 ++ [x]).filter (fun g => g.name = "Group") = [x] := by
                rw [List.filter_append, h0.2.1]
                simp [hname]
              rw [hf, countGroupsList_cons, if_pos hname]
              have hd : ((st2.setRootGroup g).deleteGroup st2.rootGroup).groupDefs
                  = st2.groupDefs := by simp
              rw [hd, a6]
              simp only [Reader.setPending, h0.1, List.length_nil, countGroupsList]
              omega
      · rename_i hname
        have hf : (cs1 ++ [x]).filter (fun g => g.name = "Group")
            = cs1.filter (fun g => g.name = "Group") :=
          filter_snoc_of_not cs1 (by simpa using hname)
        split at hr
        · obtain ⟨f1, f2, f3, f4, f5, f6⟩ := leaf_frame
            (f := fun s => parseDeletedObjects env x s)
            (fun hP _ hs => parseDeletedObjects_stable hP hs) hi1
          rw [view_setPending] at f3
          refine ih _ _ _ (cs1 ++ [x]) rest up (endElement_pending f1)
            (by rw [view_endElement]; exact f2) ?_ hr hnb
          rw [RootRead, hf]
          refine ⟨fun hc => ?_, fun hc => ?_⟩
          · refine ⟨?_, (hrd.1 hc).2⟩
            simp only [Reader.endElement, Reader.setPending] at f4 ⊢
            rw [f4]
            exact (hrd.1 hc).1
          · exact (hrd.2 hc).carry (by rw [view_endElement]; exact f3)
              (by simpa [Reader.endElement] using f6)
              (by simpa [Reader.endElement] using f4)
        · have hv1 : (skipCurrentElement (st.setPending (x.children :: rest :: up))).view
              = st.view := by
            unfold skipCurrentElement
            rw [view_endElement, view_setPending]
          refine ih _ _ _ (cs1 ++ [x]) rest up (by simp [skipCurrentElement, Reader.endElement])
            (by rw [hv1]; exact hi) ?_ hr hnb
          rw [RootRead, hf]
          refine ⟨fun hc => ?_, fun hc => ?_⟩
          · exact ⟨by simpa [skipCurrentElement, Reader.endElement] using (hrd.1 hc).1,
              (hrd.1 hc).2⟩
          · exact (hrd.2 hc).carry (by rw [hv1]; exact TreeExt.refl _)
              (by simp [skipCurrentElement, Reader.endElement])
              (by simp [skipCurrentElement, Reader.endElement])

theorem parseRoot_tree (env : Env) (n : Nat) (st : Reader) (r : Bool × Reader)
    (cs : List XmlElement) (up : List (List XmlElement)) (hp : st.pending = cs :: up)
    (hi : TreeInv st.view [] []) (hd : st.groupDefs = [])
    (hr : parseRoot env n st = some r) (hnb : ¬ r.2.Bad) (hok : r.1 = true) :
    r.2.pending = up ∧ TreeInv r.2.view [] [] ∧
      RootBuilt r.2 (cs.filter (fun g => g.name = "Group")) := by
  cases n with
  | zero => simp [parseRoot] at hr
  | succ n =>
    simp only [parseRoot] at hr
    split at hr
    · cases hr
    · rename_i l st1 hw
      cases hr
      obtain ⟨a1, a2, a3⟩ := root_tree env n ⟨false, false⟩ st (l, st1) [] cs up hp hi
        ⟨fun _ => ⟨hd, rfl, rfl⟩, fun hc => by simp at hc⟩ hw hnb
      simp only [List.nil_append] at a3
      refine ⟨a1, a2, a3.2 ?_⟩
      cases hf : l.groupElementFound with
      | true => rfl
      | false =>
        have := (a3.1 hf).2.2
        simp only at hok
        rw [hok] at this
        cases this

theorem file_flag (env : Env) (n : Nat) :
    ∀ l st r, l.rootElementFound = true → l.rootParsedSuccessfully = false →
      parseKeePassFileWhile env n l st = some r → r.1.rootParsedSuccessfully = false := by
  induction n with
  | zero => simp [parseKeePassFileWhile]
  | succ n ih =>
    intro l st r h1 h2 hr
    unfold parseKeePassFileWhile at hr
    split at hr
    · cases hr
      exact h2
    · split at hr
      · exact ih _ _ _ h1 h2 hr
      · split at hr
        · exact ih { l with rootParsedSuccessfully := false } _ _ h1 rfl hr
        · exact ih _ _ _ h1 h2 hr

theorem rootGroups_snoc_of_not (cs : List XmlElement) {x : XmlElement}
    (h : ¬ x.name = "Root") : rootGroups (cs ++ [x]) = rootGroups cs := by
  unfold rootGroups
  rw [filter_snoc_of_not cs (by simpa using h)]

theorem file_tree (env : Env) (n : Nat) :
    ∀ l st r cs1 cs2 up, st.pending = cs2 :: up → TreeInv st.view [] [] →
      FileRead l st cs1 → parseKeePassFileWhile env n l st = some r → ¬ r.2.Bad →
      r.1.rootParsedSuccessfully = true →
      TreeInv r.2.view [] [] ∧ RootBuilt r.2 (rootGroups (cs1 ++ cs2)) := by
  induction n with
  | zero => simp [parseKeePassFileWhile]
  | succ n ih =>
    have sb := parseKeePassFileWhile_stable stable_Bad env n
    intro l st r cs1 cs2 up hp hi hrd hr hnb hok
    have hst : ¬ st.Bad := fun hbad =>
      hnb (parseKeePassFileWhile_stable stable_Bad env (n + 1) _ _ _ hbad hr)
    have hx := (Reader.not_Bad hst).2.1
    unfold parseKeePassFileWhile at hr
    cases cs2 with
    | nil =>
      rw [readNextStartElement_nil hx hp] at hr
      simp only [Option.some.injEq] at hr
      subst hr
      simp only [view_setPending, List.append_nil]
      refine ⟨hi, ?_⟩
      cases hf : l.rootElementFound with
      | true =>
        have := hrd.2 hf hok
        exact this.carry (by rw [view_setPending]; exact TreeExt.refl _) rfl rfl
      | false =>
        have := (hrd.1 hf).2.2
        simp only at hok
        rw [hok] at this
        cases this
    | cons x rest =>
      rw [readNextStartElement_cons hx hp] at hr
      simp only at hr
      have hi1 : TreeInv (st.setPending (x.children :: rest :: up)).view [] [] := by
        rw [view_setPending]
        exact hi
      have hcs : cs1 ++ x :: rest = (cs1 ++ [x]) ++ rest := by simp
      rw [hcs]
      split at hr
      · rename_i hname
        have hnr : ¬ x.name = "Root" := by
          rw [hname]
          decide
        obtain ⟨f1, f2, f3, f4, f5, f6⟩ := leaf_frame
          (f := fun s => parseMeta env x s)
          (fun hP _ hs => parseMeta_stable hP hs) hi1
        rw [view_setPending] at f3
        refine ih _ _ _ (cs1 ++ [x]) rest up (endElement_pending f1)
          (by rw [view_endElement]; exact f2) ?_ hr hnb hok
        rw [FileRead, rootGroups_snoc_of_not cs1 hnr, filter_snoc_of_not cs1 (by simpa using hnr)]
        refine ⟨fun hc => ?_, fun hc hc2 => ?_⟩
        · refine ⟨?_, (hrd.1 hc).2⟩
          simp only [Reader.endElement, Reader.setPending] at f4 ⊢
          rw [f4]
          exact (hrd.1 hc).1
        · exact (hrd.2 hc hc2).carry (by rw [view_endElement]; exact f3)
            (by simpa [Reader.endElement] using f6)
            (by simpa [Reader.endElement] using f4)
      · rename_i hname
        split at hr
        · rename_i hroot
          split at hr
          · rename_i hfound
            have := file_flag env n { l with rootParsedSuccessfully := false } _ _ hfound rfl hr
            rw [hok] at this
            cases this
          · rename_i hfound
            simp only [Bool.not_eq_true] at hfound
            split at hr
            · cases hr
            · rename_i ok st2 hparse
              have hnb2 : ¬ st2.Bad := fun hbad => hnb (sb _ _ _ hbad hr)
              cases ok with
              | false =>
                have := file_flag env n ⟨true, false⟩ _ _ rfl rfl hr
                rw [hok] at this
                cases this
              | true =>
                have h0 := hrd.1 hfound
                obtain ⟨a1, a2, a3⟩ := parseRoot_tree env n _ _ _ _ rfl hi1
                  (by simpa using h0.1) hparse hnb2 rfl
                refine ih _ _ _ (cs1 ++ [x]) rest up a1 a2
                  ⟨fun hc => by simp at hc, fun _ _ => ?_⟩ hr hnb hok
                have hrg : rootGroups (cs1 ++ [x])
                    = x.children.filter (fun g => g.name = "Group") := by
                  unfold rootGroups
                  rw [List.filter_append, h0.2.1]
                  simp [hroot]
                rw [hrg]
                exact a3
        · rename_i hroot
          have hv1 : (skipCurrentElement (st.setPending (x.children :: rest :: up))).view
              = st.view := by
            unfold skipCurrentElement
            rw [view_endElement, view_setPending]
          refine ih _ _ _ (cs1 ++ [x]) rest up (by simp [skipCurrentElement, Reader.endElement])
            (by rw [hv1]; exact hi) ?_ hr hnb hok
          rw [FileRead, rootGroups_snoc_of_not cs1 hroot,
            filter_snoc_of_not cs1 (by simpa using hroot)]
          refine ⟨fun hc => ?_, fun hc hc2 => ?_⟩
          · exact ⟨by simpa [skipCurrentElement, Reader.endElement] using (hrd.1 hc).1,
              (hrd.1 hc).2⟩
          · exact (hrd.2 hc hc2).carry (by rw [hv1]; exact TreeExt.refl _)
              (by simp [skipCurrentElement, Reader.endElement])
              (by simp [skipCurrentElement, Reader.endElement])

theorem parseKeePassFile_tree (env : Env) (n : Nat) (st : Reader) (r : Bool × Reader)
    (cs : List XmlElement) (up : List (List XmlElement)) (hp : st.pending = cs :: up)
    (hi : TreeInv st.view [] []) (hd : st.groupDefs = [])
    (hr : parseKeePassFile env n st = some r) (hnb : ¬ r.2.Bad) (hok : r.1 = true) :
    TreeInv r.2.view [] [] ∧ RootBuilt r.2 (rootGroups cs) := by
  cases n with
  | zero => simp [parseKeePassFile] at hr
  | succ n =>
    simp only [parseKeePassFile] at hr
    split at hr
    · cases hr
    · rename_i l st1 hw
      cases hr
      have := file_tree env n ⟨false, false⟩ st (l, st1) [] cs up hp hi
        ⟨fun _ => ⟨hd, rfl, rfl⟩, fun hc => by simp at hc⟩ hw hnb hok
      simpa using this

/-! ### C9: the counts of a decode -/

theorem start_tree (strictMode : Bool) (binaryPool : List (String × QByteArray))
    (randomStream : Option QByteArray) (doc : XmlElement) :
    TreeInv (Reader.start strictMode binaryPool randomStream doc).view [] [] := by
  refine ⟨by simp [Reader.start, Reader.view], by simp [Reader.start, Reader.view, mapGet],
    by simp [Reader.start, Reader.view, mapGet], by simp [Reader.start, Reader.view, mapGet],
    by simp [Reader.start, Reader.view], by simp [Reader.start, Reader.view, mapGet],
    by simp [Reader.start, Reader.view, mapGet], by simp [Reader.start, Reader.view], ?_, ?_,
    by simp [Reader.start, Reader.view, mapGet], by simp [Reader.start, Reader.view, mapGet],
    by simp, by simp, List.nodup_nil, List.nodup_nil⟩
  · intro p hp
    simp only [Reader.start, Reader.view, List.length_cons, List.length_nil] at hp
    obtain ⟨q, rfl⟩ : ∃ q, p = q + 2 := ⟨p - 2, by omega⟩
    simp [Reader.start, Reader.view, Reader.group, DbGroup.init]
  · intro e _
    simp [Reader.start, Reader.view, Reader.entry, Entry.init]

theorem view_foldl {α : Type} {f : Reader → α → Reader}
    (hf : ∀ s a, (f s a).view = s.view) (xs : List α) (s : Reader) :
    (xs.foldl f s).view = s.view := by
  induction xs generalizing s with
  | nil => rfl
  | cons x xs ih =>
    simp only [List.foldl_cons]
    rw [ih, hf]

theorem view_resolveBinaries (items : List (String × Nat × String)) (st : Reader) :
    (resolveBinaries items st).view = st.view := by
  induction items generalizing st with
  | nil => rfl
  | cons x rest ih =>
    obtain ⟨id, entry, name⟩ := x
    unfold resolveBinaries
    simp only
    rw [ih, view_updEntry _ _ _ (by intro _; rfl)]
    split
    · rfl
    · exact view_setBinaryPool _ _

theorem view_enableUpdates (st : Reader) : (enableUpdates st).view = st.view := by
  unfold enableUpdates
  simp only
  rw [view_foldl, view_foldl, view_setMeta]
  · intro s a
    exact view_updGroup _ _ _ (by intro _; rfl)
  · intro s a
    rw [view_foldl, view_updEntry _ _ _ (by intro _; rfl)]
    intro t b
    exact view_updEntry _ _ _ (by intro _; rfl)

theorem view_readDatabaseFinish (env : Env) (st : Reader) :
    (readDatabaseFinish env true st).view = st.view := by
  unfold readDatabaseFinish
  simp only [Bool.not_true, Bool.false_eq_true, if_false]
  rw [view_enableUpdates, view_resolveBinaries]

theorem readDatabaseFinish_false_Bad (env : Env) (st : Reader) :
    (readDatabaseFinish env false st).Bad := by
  unfold readDatabaseFinish
  exact Or.inl (by simp [Reader.raiseError])

/-- The groups defined are no more than the heap of groups holds, when no two
are merged under the same UUID. -/
theorem TreeInv.defs_le {V : View} {S Se : List Nat} (h : TreeInv V S Se)
    (hn : (V.gdefs.map Prod.fst).Nodup) : V.gdefs.length ≤ V.glen := by
  have h1 : (V.gdefs.map Prod.snd).Nodup := by
    refine List.Nodup.map_on ?_ (List.Nodup.of_map _ hn)
    intro a ha b hb hab
    have e1 := h.defs_reg a ha
    have e2 := h.defs_reg b hb
    rw [hab] at e1
    have := h.reg_inj _ _ _ e1 e2
    exact Prod.ext this hab
  have h2 : V.gdefs.map Prod.snd ⊆ List.range V.glen := by
    intro p hp
    exact List.mem_range.mpr (h.def_lt hp).1
  have h3 := (List.subperm_of_subset h1 h2).length_le
  simpa using h3

theorem countGroupsList_filter (xs : List XmlElement) :
    countGroupsList (xs.filter (fun g => g.name = "Group")) = countGroupsList xs := by
  induction xs with
  | nil => rfl
  | cons x xs ih =>
    by_cases hx : x.name = "Group"
    · rw [List.filter_cons_of_pos (by simpa using hx), countGroupsList_cons,
        countGroupsList_cons, ih]
    · rw [List.filter_cons_of_neg (by simpa using hx), countGroupsList_cons, if_neg hx, ih]
      omega

theorem rootGroups_eq (doc : XmlElement) :
    rootGroups doc.children = (rootChildren doc).filter (fun g => g.name = "Group") := rfl

/-- The tree of a decode that ends without error and without two elements
merged under one UUID: the `Group` elements in defining position have been
read into the tree with the root group of the database on top, and the heap of
groups holds at least as many groups as there are such elements. -/
theorem readDatabaseFuel_built {env : Env} {fuel : Nat} {strictMode : Bool}
    {binaryPool : List (String × QByteArray)} {randomStream : Option QByteArray}
    {doc : XmlElement} {st : Reader}
    (h : readDatabaseFuel env fuel strictMode binaryPool randomStream doc = some st)
    (hnb : ¬ st.Bad) :
    BuiltList st.view (rootGroups doc.children) [st.rootGroup] [] ∧
      countGroupsList (rootGroups doc.children) ≤ st.groups.length := by
  unfold readDatabaseFuel at h
  have hx0 : (Reader.start strictMode binaryPool randomStream doc).xmlError = false := rfl
  have hp0 : (Reader.start strictMode binaryPool randomStream doc).pending
      = (doc :: []) :: [] := rfl
  rw [readNextStartElement_cons hx0 hp0] at h
  simp only at h
  split at h
  · split at h
    · cases h
    · rename_i ok st2 hk
      simp only [Option.some.injEq] at h
      subst h
      cases ok with
      | false => exact absurd (readDatabaseFinish_false_Bad env st2) hnb
      | true =>
        have hnb2 : ¬ st2.Bad := fun hbad =>
          hnb (readDatabaseFinish_stable stable_Bad.toStableLeaf hbad)
        obtain ⟨a1, a2⟩ := parseKeePassFile_tree env fuel _ _ _ _ rfl
          (by rw [view_setPending]; exact start_tree _ _ _ _) rfl hk hnb2 rfl
        have hv := view_readDatabaseFinish env st2
        have hlen : (readDatabaseFinish env true st2).groups.length = st2.groups.length :=
          congrArg View.glen hv
        have hroot : (readDatabaseFinish env true st2).rootGroup = st2.rootGroup :=
          congrArg View.root hv
        refine ⟨?_, ?_⟩
        · rw [hv, hroot]
          exact a2.1
        · rw [← a2.2, hlen]
          exact a1.defs_le (Reader.not_Bad hnb2).2.2.1
  · simp only [Option.some.injEq] at h
    subst h
    exact absurd (readDatabaseFinish_false_Bad env _) hnb

/-- The counts of a decode that ends without error and without two elements
merged under one UUID. -/
theorem readDatabaseFuel_counts {env : Env} {fuel : Nat} {strictMode : Bool}
    {binaryPool : List (String × QByteArray)} {randomStream : Option QByteArray}
    {doc : XmlElement} {st : Reader}
    (h : readDatabaseFuel env fuel strictMode binaryPool randomStream doc = some st)
    (hnb : ¬ st.Bad) :
    st.vaultGroups.length = countGroupElements doc ∧
      st.vaultEntries.length = countEntryElements doc := by
  obtain ⟨hb, hle⟩ := readDatabaseFuel_built h hnb
  obtain ⟨c1, c2⟩ := BuiltList.count _ _ _ _ hb _ hle
  simp only [List.flatMap_cons, List.flatMap_nil, List.append_nil, List.length_nil,
    Nat.add_zero] at c1 c2
  refine ⟨?_, ?_⟩
  · unfold Reader.vaultGroups countGroupElements
    rw [c1, rootGroups_eq, countGroupsList_filter]
  · unfold Reader.vaultEntries Reader.vaultGroups countEntryElements
    rw [c2, rootGroups_eq]

/-! ### C9: a root group with only a UUID -/

theorem getGroup_of_none {u : Uuid} {st : Reader} (hn : u.isNull = false)
    (hm : mapGet u st.m_groups = none) :
    getGroup u st = (some st.groups.length,
      (((st.newGroup.2.updGroup st.groups.length
        (fun g => { g with m_updateTimeinfo := false })).updGroup st.groups.length
        (fun g => { g with m_uuid := u })).setParent st.groups.length st.m_tmpParent).registerGroup
          u st.groups.length) := by
  simp [getGroup, hn, hm, Reader.newGroup]

theorem parseGroupField_uuid {env : Env} {a : List (String × String)} {t : String}
    (hlen : (env.fromBase64 t).length = 16) (hnn : (Uuid.mk (env.fromBase64 t)).isNull = false)
    (g : Nat) (st : Reader) (hx : st.xmlError = false) :
    parseGroupField env g (.mk "UUID" a t []) st
      = st.updGroup g (fun d => { d with m_uuid := ⟨env.fromBase64 t⟩ }) := by
  have hne : (env.fromBase64 t).isEmpty = false := by
    cases h : env.fromBase64 t with
    | nil => rw [h] at hlen; cases hlen
    | cons a b => rfl
  simp [parseGroupField, readUuid, readBinary, readString, hx, XmlElement.name,
    XmlElement.children, XmlElement.text, hne, hlen, Uuid.Length, hnn]

theorem parseGroupWhile_uuid_only {env : Env} {a : List (String × String)} {t : String}
    (hlen : (env.fromBase64 t).length = 16) (hnn : (Uuid.mk (env.fromBase64 t)).isNull = false)
    (n : Nat) (l : GroupLocals) (st : Reader) (up : List (List XmlElement))
    (hx : st.xmlError = false) (hp : st.pending = [.mk "UUID" a t []] :: up) :
    parseGroupWhile env (n + 1 + 1) l st = some (l,
      ((st.updGroup l.group (fun d => { d with m_uuid := ⟨env.fromBase64 t⟩ })).setPending up)) := by
  rw [parseGroupWhile, readNextStartElement_cons hx hp]
  simp only [XmlElement.name, String.reduceEq, if_false, XmlElement.children]
  rw [parseGroupField_uuid hlen hnn _ _ (by simpa using hx)]
  rw [parseGroupWhile, @readNextStartElement_nil _ up (by simpa [Reader.endElement] using hx)
    (by simp [Reader.endElement])]
  simp only [Option.some.injEq, Prod.mk.injEq, true_and]
  unfold Reader.updGroup
  simp only [Reader.endElement, Reader.setPending]
  split <;> rfl

theorem uuid_updGroup (st : Reader) (p q : Nat) (f : DbGroup → DbGroup)
    (hf : ∀ g, (f g).m_uuid = g.m_uuid) :
    ((st.updGroup p f).group q).m_uuid = (st.group q).m_uuid := by
  rw [group_updGroup]
  split
  · rename_i h
    rw [hf, h.1]
  · rfl

theorem uuid_cleanupParent (st : Reader) (c q : Nat) :
    ((st.cleanupParent c).group q).m_uuid = (st.group q).m_uuid := by
  unfold Reader.cleanupParent
  split
  · exact uuid_updGroup _ _ _ _ (by intro _; rfl)
  · rfl

theorem uuid_setParent (st : Reader) (c p q : Nat) :
    ((st.setParent c p).group q).m_uuid = (st.group q).m_uuid := by
  unfold Reader.setParent
  simp only
  rw [uuid_updGroup _ _ _ _ (by intro _; rfl), uuid_updGroup _ _ _ _ (by intro _; rfl),
    uuid_cleanupParent]

theorem uuid_setRootGroup (st : Reader) (p q : Nat) :
    ((st.setRootGroup p).group q).m_uuid = (st.group q).m_uuid := by
  unfold Reader.setRootGroup
  simp only
  show (((st.cleanupParent p).updGroup p _).group q).m_uuid = _
  rw [uuid_updGroup _ _ _ _ (by intro _; rfl), uuid_cleanupParent]

theorem group_newGroup (st : Reader) (q : Nat) : st.newGroup.2.group q = st.group q := by
  simp only [Reader.newGroup, Reader.group]
  by_cases hq : q < st.groups.length
  · simp [List.getD_eq_getElem?_getD, List.getElem?_append_left hq]
  · by_cases hq2 : q = st.groups.length
    · subst hq2
      simp [List.getD_eq_getElem?_getD]
    · have h1 : st.groups.length + 1 ≤ q := by omega
      simp [List.getD_eq_getElem?_getD, List.getElem?_eq_none, h1,
        Nat.le_of_lt (Nat.lt_of_succ_le h1)]

/-- The end of a `Group` element without child groups and entries whose local
group has the UUID `u`, not in the registry yet: the registry gets a new group
for `u`, with that UUID, and the merge is recorded. -/
theorem parseGroupFinish_new {env : Env} {u : Uuid} (hnn : u.isNull = false) (tmp : Nat)
    (st : Reader) (hu : (st.group tmp).m_uuid = u) (hm : mapGet u st.m_groups = none) :
    (parseGroupFinish env ⟨tmp, [], []⟩ st).1 = st.groups.length ∧
    (parseGroupFinish env ⟨tmp, [], []⟩ st).2.pending = st.pending ∧
    (parseGroupFinish env ⟨tmp, [], []⟩ st).2.xmlError = st.xmlError ∧
    (parseGroupFinish env ⟨tmp, [], []⟩ st).2.m_error = st.m_error ∧
    (parseGroupFinish env ⟨tmp, [], []⟩ st).2.groupDefs
      = st.groupDefs ++ [(u, st.groups.length)] ∧
    (parseGroupFinish env ⟨tmp, [], []⟩ st).2.entryDefs = st.entryDefs ∧
    (parseGroupFinish env ⟨tmp, [], []⟩ st).2.rootGroup = st.rootGroup ∧
    (parseGroupFinish env ⟨tmp, [], []⟩ st).2.groups.length = st.groups.length + 1 ∧
    ((parseGroupFinish env ⟨tmp, [], []⟩ st).2.group st.groups.length).m_uuid = u := by
  have hg := @getGroup_of_none _ st hnn hm
  have e2 := parseGroupFinish_eq env ⟨tmp, [], []⟩ st _ _
    (by rw [hu]; exact hnn) (by rw [hu]; exact hg)
  rw [e2]
  simp only [List.foldl_nil]
  have hd : ∀ (s : Reader) (v : Uuid) (p q : Nat), (s.defGroup v p).group q = s.group q :=
    fun _ _ _ _ => rfl
  have hr : ∀ (s : Reader) (v : Uuid) (p q : Nat), (s.registerGroup v p).group q = s.group q :=
    fun _ _ _ _ => rfl
  refine ⟨by simp, by simp [Reader.newGroup], by simp [Reader.newGroup],
    by simp [Reader.newGroup], by simp [Reader.newGroup, hu], by simp [Reader.newGroup],
    by simp [Reader.newGroup], by simp [Reader.newGroup], ?_⟩
  simp only [hd]
  unfold Reader.deleteGroup
  rw [uuid_updGroup _ _ _ _ (by intro _; rfl), uuid_updGroup _ _ _ _ (by intro _; rfl),
    group_updGroup, if_pos ⟨rfl, by simp [Reader.newGroup]⟩]
  simp only [DbGroup.copyDataFrom, hr]
  rw [uuid_setParent, group_updGroup]
  split
  · rfl
  · rw [uuid_updGroup _ _ _ _ (by intro _; rfl), group_newGroup]
    exact hu

theorem parseGroup_uuid_only {env : Env} {a : List (String × String)} {t : String}
    (hlen : (env.fromBase64 t).length = 16) (hnn : (Uuid.mk (env.fromBase64 t)).isNull = false)
    (n : Nat) (st : Reader) (up : List (List XmlElement)) (hx : st.xmlError = false)
    (hp : st.pending = [.mk "UUID" a t []] :: up)
    (hm : mapGet ⟨env.fromBase64 t⟩ st.m_groups = none) :
    ∃ st1, parseGroup env (n + 1 + 1 + 1) st = some (st.groups.length + 1, st1) ∧
      st1.pending = up ∧ st1.xmlError = false ∧ st1.m_error = st.m_error ∧
      st1.groupDefs = st.groupDefs ++ [(⟨env.fromBase64 t⟩, st.groups.length + 1)] ∧
      st1.entryDefs = st.entryDefs ∧
      (st1.group (st.groups.length + 1)).m_uuid = ⟨env.fromBase64 t⟩ := by
  have ePG : parseGroup env (n + 1 + 1 + 1) st =
      match parseGroupWhile env (n + 1 + 1) ⟨st.groups.length, [], []⟩
        (st.newGroup.2.updGroup st.newGroup.1
          (fun g => { g with m_updateTimeinfo := false })) with
      | none => none
      | some (l, st3) => some (parseGroupFinish env l st3) := rfl
  rw [ePG, parseGroupWhile_uuid_only hlen hnn n _ _ up (by simpa [Reader.newGroup] using hx)
    (by simpa [Reader.newGroup] using hp)]
  simp only
  have hu : ((((st.newGroup.2.updGroup st.newGroup.1
      (fun g => { g with m_updateTimeinfo := false })).updGroup st.groups.length
      (fun d => { d with m_uuid := ⟨env.fromBase64 t⟩ })).setPending up).group
      st.groups.length).m_uuid = ⟨env.fromBase64 t⟩ := by
    show (((st.newGroup.2.updGroup st.newGroup.1
      (fun g => { g with m_updateTimeinfo := false })).updGroup st.groups.length
      (fun d => { d with m_uuid := ⟨env.fromBase64 t⟩ })).group st.groups.length).m_uuid = _
    rw [group_updGroup, if_pos ⟨rfl, by simp [Reader.newGroup]⟩]
  have k1 : (((st.newGroup.2.updGroup st.newGroup.1
      (fun g => { g with m_updateTimeinfo := false })).updGroup st.groups.length
      (fun d => { d with m_uuid := ⟨env.fromBase64 t⟩ })).setPending up).groups.length
      = st.groups.length + 1 := by simp [Reader.newGroup]
  have k2 : (((st.newGroup.2.updGroup st.newGroup.1
      (fun g => { g with m_updateTimeinfo := false })).updGroup st.groups.length
      (fun d => { d with m_uuid := ⟨env.fromBase64 t⟩ })).setPending up).pending = up := by simp
  have k3 : (((st.newGroup.2.updGroup st.newGroup.1
      (fun g => { g with m_updateTimeinfo := false })).updGroup st.groups.length
      (fun d => { d with m_uuid := ⟨env.fromBase64 t⟩ })).setPending up).xmlError = false := by
    simpa [Reader.newGroup] using hx
  have k4 : (((st.newGroup.2.updGroup st.newGroup.1
      (fun g => { g with m_updateTimeinfo := false })).updGroup st.groups.length
      (fun d => { d with m_uuid := ⟨env.fromBase64 t⟩ })).setPending up).m_error
      = st.m_error := by simp [Reader.newGroup]
  have k5 : (((st.newGroup.2.updGroup st.newGroup.1
      (fun g => { g with m_updateTimeinfo := false })).updGroup st.groups.length
      (fun d => { d with m_uuid := ⟨env.fromBase64 t⟩ })).setPending up).groupDefs
      = st.groupDefs := by simp [Reader.newGroup]
  have k6 : (((st.newGroup.2.updGroup st.newGroup.1
      (fun g => { g with m_updateTimeinfo := false })).updGroup st.groups.length
      (fun d => { d with m_uuid := ⟨env.fromBase64 t⟩ })).setPending up).entryDefs
      = st.entryDefs := by simp [Reader.newGroup]
  have k7 : mapGet ⟨env.fromBase64 t⟩ (((st.newGroup.2.updGroup st.newGroup.1
      (fun g => { g with m_updateTimeinfo := false })).updGroup st.groups.length
      (fun d => { d with m_uuid := ⟨env.fromBase64 t⟩ })).setPending up).m_groups = none := by
    simpa [Reader.newGroup] using hm
  generalize (((st.newGroup.2.updGroup st.newGroup.1
      (fun g => { g with m_updateTimeinfo := false })).updGroup st.groups.length
      (fun d => { d with m_uuid := ⟨env.fromBase64 t⟩ })).setPending up) = S at hu k1 k2 k3 k4 k5 k6 k7 ⊢
  obtain ⟨b1, b2, b3, b4, b5, b6, b7, b8, b9⟩ := @parseGroupFinish_new env _ hnn
    st.groups.length S hu k7
  rw [k1] at b1 b5 b9
  refine ⟨_, ?_, b2.trans k2, b3.trans k3, b4.trans k4, ?_, b6.trans k6, b9⟩
  · rw [← b1]
  · rw [b5, k5]

theorem parseRoot_uuid_only {env : Env} {a a3 : List (String × String)} {t t3 : String}
    (hlen : (env.fromBase64 t).length = 16) (hnn : (Uuid.mk (env.fromBase64 t)).isNull = false)
    (n : Nat) (st : Reader) (up : List (List XmlElement)) (hx : st.xmlError = false)
    (hp : st.pending = [.mk "Group" a3 t3 [.mk "UUID" a t []]] :: up)
    (hm : mapGet ⟨env.fromBase64 t⟩ st.m_groups = none) :
    ∃ st1, parseRoot env (n + 1 + 1 + 1 + 1 + 1) st = some (true, st1) ∧
      st1.pending = up ∧ st1.xmlError = false ∧ st1.m_error = st.m_error ∧
      st1.groupDefs = st.groupDefs ++ [(⟨env.fromBase64 t⟩, st.groups.length + 1)] ∧
      st1.entryDefs = st.entryDefs ∧ st1.rootGroup = st.groups.length + 1 ∧
      (st1.group (st.groups.length + 1)).m_uuid = ⟨env.fromBase64 t⟩ := by
  have eR : parseRoot env (n + 1 + 1 + 1 + 1 + 1) st =
      match parseRootWhile env (n + 1 + 1 + 1 + 1) ⟨false, false⟩ st with
      | none => none
      | some (l, st1) => some (l.groupParsedSuccessfully, st1) := rfl
  obtain ⟨st2, e, p1, p2, p3, p4, p5, p6⟩ := parseGroup_uuid_only hlen hnn n
    (st.setPending ([.mk "UUID" a t []] :: [] :: up)) ([] :: up) (by simpa using hx) rfl
    (by simpa using hm)
  have hl : (st.setPending ([.mk "UUID" a t []] :: [] :: up)).groups.length
      = st.groups.length := rfl
  rw [hl] at e p4 p6
  have q1 : ((st2.setRootGroup (st.groups.length + 1)).deleteGroup st2.rootGroup).pending
      = [] :: up := by simpa using p1
  have q2 : ((st2.setRootGroup (st.groups.length + 1)).deleteGroup st2.rootGroup).xmlError
      = false := by simpa using p2
  have q3 : ((st2.setRootGroup (st.groups.length + 1)).deleteGroup st2.rootGroup).m_error
      = st.m_error := by simpa using p3
  have q4 : ((st2.setRootGroup (st.groups.length + 1)).deleteGroup st2.rootGroup).groupDefs
      = st.groupDefs ++ [(⟨env.fromBase64 t⟩, st.groups.length + 1)] := by simpa using p4
  have q5 : ((st2.setRootGroup (st.groups.length + 1)).deleteGroup st2.rootGroup).entryDefs
      = st.entryDefs := by simpa using p5
  have q6 : ((st2.setRootGroup (st.groups.length + 1)).deleteGroup st2.rootGroup).rootGroup
      = st.groups.length + 1 := by simp [Reader.setRootGroup]
  have q7 : (((st2.setRootGroup (st.groups.length + 1)).deleteGroup st2.rootGroup).group
      (st.groups.length + 1)).m_uuid = ⟨env.fromBase64 t⟩ := by
    unfold Reader.deleteGroup
    rw [uuid_updGroup _ _ _ _ (by intro _; rfl), uuid_setRootGroup]
    exact p6
  have eW : parseRootWhile env (n + 1 + 1 + 1 + 1) ⟨false, false⟩ st
      = some (⟨true, true⟩,
        ((st2.setRootGroup (st.groups.length + 1)).deleteGroup st2.rootGroup).setPending up) := by
    rw [parseRootWhile, readNextStartElement_cons hx hp]
    simp only [XmlElement.name, if_true, Bool.false_eq_true, if_false, XmlElement.children]
    rw [e]
    simp only
    rw [parseRootWhile, @readNextStartElement_nil _ up q2 q1]
  rw [eR, eW]
  exact ⟨_, rfl, rfl, q2, q3, q4, q5, q6, q7⟩

theorem parseKeePassFile_uuid_only {env : Env} {a a2 a3 : List (String × String)}
    {t t2 t3 : String}
    (hlen : (env.fromBase64 t).length = 16) (hnn : (Uuid.mk (env.fromBase64 t)).isNull = false)
    (n : Nat) (st : Reader) (up : List (List XmlElement)) (hx : st.xmlError = false)
    (hp : st.pending = [.mk "Root" a2 t2 [.mk "Group" a3 t3 [.mk "UUID" a t []]]] :: up)
    (hm : mapGet ⟨env.fromBase64 t⟩ st.m_groups = none) :
    ∃ st1, parseKeePassFile env (n + 1 + 1 + 1 + 1 + 1 + 1 + 1) st = some (true, st1) ∧
      st1.xmlError = false ∧ st1.m_error = st.m_error ∧
      st1.groupDefs = st.groupDefs ++ [(⟨env.fromBase64 t⟩, st.groups.length + 1)] ∧
      st1.entryDefs = st.entryDefs ∧ st1.rootGroup = st.groups.length + 1 ∧
      (st1.group (st.groups.length + 1)).m_uuid = ⟨env.fromBase64 t⟩ := by
  have eF : parseKeePassFile env (n + 1 + 1 + 1 + 1 + 1 + 1 + 1) st =
      match parseKeePassFileWhile env (n + 1 + 1 + 1 + 1 + 1 + 1) ⟨false, false⟩ st with
      | none => none
      | some (l, st1) => some (l.rootParsedSuccessfully, st1) := rfl
  obtain ⟨st2, e, p1, p2, p3, p4, p5, p6, p7⟩ := parseRoot_uuid_only hlen hnn n
    (st.setPending ([.mk "Group" a3 t3 [.mk "UUID" a t []]] :: [] :: up)) ([] :: up)
    (by simpa using hx) rfl (by simpa using hm)
  have hl : (st.setPending ([.mk "Group" a3 t3 [.mk "UUID" a t []]] :: [] :: up)).groups.length
      = st.groups.length := rfl
  rw [hl] at p4 p6 p7
  have eW : parseKeePassFileWhile env (n + 1 + 1 + 1 + 1 + 1 + 1) ⟨false, false⟩ st
      = some (⟨true, true⟩, st2.setPending up) := by
    rw [parseKeePassFileWhile, readNextStartElement_cons hx hp]
    simp only [XmlElement.name, String.reduceEq, if_true, Bool.false_eq_true, if_false,
      XmlElement.children]
    rw [e]
    simp only
    rw [parseKeePassFileWhile, @readNextStartElement_nil _ up p2 p1]
  rw [eF, eW]
  exact ⟨_, rfl, p2, by simpa using p3, by simpa using p4, by simpa using p5, p6, p7⟩

theorem foldl_obs {α β : Type} {f : Reader → α → Reader} (obs : Reader → β)
    (hf : ∀ s a, obs (f s a) = obs s) (xs : List α) (s : Reader) :
    obs (xs.foldl f s) = obs s := by
  induction xs generalizing s with
  | nil => rfl
  | cons x xs ih =>
    simp only [List.foldl_cons]
    rw [ih, hf]

/-- The closing code of `readDatabase` with a root group parsed keeps the error
state and the UUID of every group. -/
theorem readDatabaseFinish_obs (env : Env) (st : Reader) (q : Nat) :
    (readDatabaseFinish env true st).m_error = st.m_error ∧
    (readDatabaseFinish env true st).xmlError = st.xmlError ∧
    ((readDatabaseFinish env true st).group q).m_uuid = (st.group q).m_uuid := by
  have hobs : ∀ s : Reader, (fun s : Reader => (s.m_error, s.xmlError, (s.group q).m_uuid))
      (readDatabaseFinish env true s) = (s.m_error, s.xmlError, (s.group q).m_uuid) := by
    intro s
    have hE : ∀ (s : Reader) (p : Nat) (f : Entry → Entry),
        ((s.updEntry p f).m_error, (s.updEntry p f).xmlError, ((s.updEntry p f).group q).m_uuid)
          = (s.m_error, s.xmlError, (s.group q).m_uuid) := by
      intro s p f
      rw [group_updEntry]
      simp
    have hR : ∀ (items : List (String × Nat × String)) (s : Reader),
        ((resolveBinaries items s).m_error, (resolveBinaries items s).xmlError,
          ((resolveBinaries items s).group q).m_uuid)
          = (s.m_error, s.xmlError, (s.group q).m_uuid) := by
      intro items
      induction items with
      | nil => intro s; rfl
      | cons x rest ih =>
        intro s
        obtain ⟨id, entry, name⟩ := x
        unfold resolveBinaries
        simp only
        rw [ih, hE]
        split
        · rfl
        · rfl
    unfold readDatabaseFinish enableUpdates
    simp only [Bool.not_true, Bool.false_eq_true, if_false]
    rw [foldl_obs (fun s : Reader => (s.m_error, s.xmlError, (s.group q).m_uuid)),
      foldl_obs (fun s : Reader => (s.m_error, s.xmlError, (s.group q).m_uuid))]
    · show (_, _, ((Reader.setMeta _ _).group q).m_uuid) = _
      exact hR _ s
    · intro t a
      rw [uuid_updGroup _ _ _ _ (by intro _; rfl)]
      simp
    · intro t a
      rw [foldl_obs (fun s : Reader => (s.m_error, s.xmlError, (s.group q).m_uuid))]
      · exact hE _ _ _
      · intro t2 b
        exact hE _ _ _
  have := hobs st
  simp only [Prod.mk.injEq] at this
  exact this

/-! ### C9: the counts of groups and entries -/

/-- A document whose `Root` holds one `Group` with only a `UUID` element that
carries a non-null UUID of 16 bytes decodes, in either mode, without error to
a database whose root group has that UUID, no child group and no entry. -/
theorem readDatabase_uuid_only (env : Env) (strictMode : Bool)
    (binaryPool : List (String × QByteArray)) (randomStream : Option QByteArray)
    (a1 a2 a3 a4 : List (String × String)) (t1 t2 t3 t : String)
    (hlen : (env.fromBase64 t).length = 16)
    (hnn : (Uuid.mk (env.fromBase64 t)).isNull = false) :
    ∃ st, readDatabase env strictMode binaryPool randomStream
        (.mk "KeePassFile" a1 t1 [.mk "Root" a2 t2 [.mk "Group" a3 t3 [.mk "UUID" a4 t []]]])
        = some st ∧ st.hasError = false ∧
      (st.group st.rootGroup).m_uuid = ⟨env.fromBase64 t⟩ ∧
      (st.group st.rootGroup).m_children = [] ∧ (st.group st.rootGroup).m_entries = [] ∧
      st.vaultGroups = [st.rootGroup] ∧ st.vaultEntries = [] := by
  obtain ⟨st2, e, p1, p2, p3, p4, p5, p6⟩ := @parseKeePassFile_uuid_only env a4 a2
    a3 t t2 t3 hlen hnn 11
    ((Reader.start strictMode binaryPool randomStream
      (.mk "KeePassFile" a1 t1
        [.mk "Root" a2 t2 [.mk "Group" a3 t3 [.mk "UUID" a4 t []]]])).setPending
      ([.mk "Root" a2 t2 [.mk "Group" a3 t3 [.mk "UUID" a4 t []]]] :: [] :: [])) ([] :: [])
    rfl rfl rfl
  have hrun : readDatabase env strictMode binaryPool randomStream
      (.mk "KeePassFile" a1 t1 [.mk "Root" a2 t2 [.mk "Group" a3 t3 [.mk "UUID" a4 t []]]])
      = some (readDatabaseFinish env true st2) := by
    show readDatabaseFuel env (11 + 1 + 1 + 1 + 1 + 1 + 1 + 1) _ _ _ _ = _
    unfold readDatabaseFuel
    rw [readNextStartElement_cons rfl rfl]
    simp only [XmlElement.name, if_true, XmlElement.children]
    rw [e]
  have hl : ((Reader.start strictMode binaryPool randomStream
      (.mk "KeePassFile" a1 t1
        [.mk "Root" a2 t2 [.mk "Group" a3 t3 [.mk "UUID" a4 t []]]])).setPending
      ([.mk "Root" a2 t2 [.mk "Group" a3 t3 [.mk "UUID" a4 t []]]] :: [] :: [])).groups.length
      = 2 := rfl
  rw [hl] at p3 p5 p6
  obtain ⟨o1, o2, o3⟩ := readDatabaseFinish_obs env st2 3
  have hv := view_readDatabaseFinish env st2
  have hroot : (readDatabaseFinish env true st2).rootGroup = 3 :=
    (congrArg View.root hv).trans p5
  have hgd : (readDatabaseFinish env true st2).groupDefs = [(⟨env.fromBase64 t⟩, 3)] :=
    (congrArg View.gdefs hv).trans p3
  have hed : (readDatabaseFinish env true st2).entryDefs = [] :=
    (congrArg View.edefs hv).trans p4
  have herr : (readDatabaseFinish env true st2).hasError = false := by
    unfold Reader.hasError
    rw [o1, o2, p1, p2]
    rfl
  have hnb : ¬ (readDatabaseFinish env true st2).Bad := by
    unfold Reader.Bad
    rw [o1, o2, p1, p2, hgd, hed]
    simp
    rfl
  obtain ⟨hb, hle⟩ := @readDatabaseFuel_built env (4 * (XmlElement.mk "KeePassFile" a1 t1
    [.mk "Root" a2 t2 [.mk "Group" a3 t3 [.mk "UUID" a4 t []]]]).size + 2) _ _ _ _ _ hrun hnb
  have hrg : rootGroups (XmlElement.mk "KeePassFile" a1 t1
      [.mk "Root" a2 t2 [.mk "Group" a3 t3 [.mk "UUID" a4 t []]]]).children
      = [.mk "Group" a3 t3 [.mk "UUID" a4 t []]] := by
    simp [rootGroups, XmlElement.children, XmlElement.name]
  have hG : (XmlElement.mk "Group" a3 t3 [XmlElement.mk "UUID" a4 t []]).name = "Group" := rfl
  rw [hrg] at hle
  have hle1 : 1 ≤ (readDatabaseFinish env true st2).groups.length := by
    simp only [countGroupsList, XmlElement.countGroups, if_true] at hle
    omega
  rw [hrg, BuiltList_cons, if_pos hG] at hb
  obtain ⟨g, gs1, e1, -, hc, -⟩ := hb
  obtain ⟨rfl, -⟩ : (readDatabaseFinish env true st2).rootGroup = g ∧ [] = gs1 := by
    simpa using e1
  simp only [XmlElement.children] at hc
  rw [BuiltList_cons, if_neg (by simp [XmlElement.name]), if_neg (by simp [XmlElement.name]),
    BuiltList_nil] at hc
  have hch : ((readDatabaseFinish env true st2).group
      (readDatabaseFinish env true st2).rootGroup).m_children = [] := hc.1
  have hen : ((readDatabaseFinish env true st2).group
      (readDatabaseFinish env true st2).rootGroup).m_entries = [] := hc.2
  have hvg : (readDatabaseFinish env true st2).vaultGroups
      = [(readDatabaseFinish env true st2).rootGroup] := by
    unfold Reader.vaultGroups
    have h2 : (readDatabaseFinish env true st2).groups.length
        = ((readDatabaseFinish env true st2).groups.length - 1) + 1 := by omega
    rw [h2, Reader.groupsUnder, hch]
    rfl
  refine ⟨_, hrun, herr, ?_, hch, hen, hvg, ?_⟩
  · rw [hroot, o3]
    exact p6
  · unfold Reader.vaultEntries
    rw [hvg]
    simp [hen]

/-! ### The decode returns: the fuel of `readDatabase` is enough -/

theorem size_eq (x : XmlElement) : x.size = 1 + XmlElement.sizeList x.children := by
  cases x
  simp [XmlElement.size, XmlElement.children]

theorem work_le_of_readNext_none {st st1 : Reader}
    (h : readNextStartElement st = (none, st1)) : st1.work ≤ st.work := by
  unfold readNextStartElement at h
  split at h
  · cases h
    exact Nat.le_refl _
  · rename_i hx
    split at h
    · cases h
      simp [Reader.work]
    · rename_i up hp
      cases h
      simp only [Reader.work, Reader.setPending, hx, hp, pendingWork]
      simp
    · cases h

theorem work_lt_of_readNext_some {st st1 : Reader} {x : XmlElement}
    (h : readNextStartElement st = (some x, st1)) :
    st1.work + 1 ≤ st.work ∧ st1.xmlError = false := by
  unfold readNextStartElement at h
  split at h
  · cases h
  · rename_i hx
    split at h
    · cases h
    · cases h
    · rename_i y rest up hp
      cases h
      simp only [Bool.not_eq_true] at hx
      simp only [Reader.work, Reader.setPending, hx, hp, pendingWork, XmlElement.sizeList,
        size_eq x, Bool.false_eq_true, if_false]
      exact ⟨by omega, trivial⟩

theorem pendingWork_tail (q : List (List XmlElement)) : pendingWork q.tail ≤ pendingWork q := by
  cases q with
  | nil => exact Nat.le_refl _
  | cons f up =>
    simp only [List.tail_cons, pendingWork]
    omega

theorem work_endElement (st : Reader) : st.endElement.work ≤ st.work := by
  unfold Reader.endElement Reader.work
  simp only [Reader.setPending]
  split
  · exact Nat.le_refl _
  · exact pendingWork_tail _

/-- The reading of a child element through its end leaves no more work. -/
theorem stableLeaf_work (w : Nat) : StableLeaf (fun t => t.work ≤ w) := by
  refine ⟨?_, ?_, ?_, ?_, ?_, ?_, ?_, ?_, ?_, ?_, ?_, ?_, ?_⟩ <;> intros <;>
    simp_all [Reader.work, Reader.raiseError, Reader.setMeta, Reader.randomUuid,
      Reader.cipherProcess]

theorem work_of_cursor {s t : Reader} (h1 : s.pending = t.pending)
    (h2 : s.xmlError = t.xmlError) : s.work = t.work := by
  unfold Reader.work
  rw [h1, h2]

theorem work_mergeGroup (tmp : Nat) (st : Reader) : (mergeGroup tmp st).2.work = st.work := by
  unfold mergeGroup
  split
  · have h1 := getGroup_pending (st.group tmp).m_uuid st
    have h2 := getGroup_xmlError (st.group tmp).m_uuid st
    cases hg : getGroup (st.group tmp).m_uuid st with
    | mk o s1 =>
      rw [hg] at h1 h2
      cases o with
      | none => exact work_of_cursor h1 h2
      | some g => exact work_of_cursor (by simpa using h1) (by simpa using h2)
  · split
    · exact work_of_cursor (by simp [Reader.raiseError]) (by simp [Reader.raiseError])
    · rfl

theorem work_mergeEntry (history : Bool) (tmp : Nat) (st : Reader) :
    (mergeEntry history tmp st).2.work = st.work := by
  unfold mergeEntry
  split
  · split
    · exact work_of_cursor (by simp) (by simp)
    · have h1 := getEntry_pending (st.entry tmp).m_uuid st
      have h2 := getEntry_xmlError (st.entry tmp).m_uuid st
      cases hg : getEntry (st.entry tmp).m_uuid st with
      | mk o s1 =>
        rw [hg] at h1 h2
        cases o with
        | none => exact work_of_cursor h1 h2
        | some g => exact work_of_cursor (by simpa using h1) (by simpa using h2)
  · split
    · exact work_of_cursor (by simp [Reader.raiseError]) (by simp [Reader.raiseError])
    · rfl

theorem work_foldl {α : Type} {f : Reader → α → Reader}
    (hf : ∀ s a, (f s a).work = s.work) (xs : List α) (s : Reader) :
    (xs.foldl f s).work = s.work :=
  foldl_obs Reader.work hf xs s

theorem work_parseGroupFinish (env : Env) (l : GroupLocals) (st : Reader) :
    (parseGroupFinish env l st).2.work ≤ st.work := by
  have hr : parseGroupFinish env l st =
      ((mergeGroup l.group (ensureGroupUuid env l.group st)).1,
        l.entries.foldl (fun s e => s.setGroup e
            (mergeGroup l.group (ensureGroupUuid env l.group st)).1)
          (l.children.foldl (fun s c => s.setParent c
              (mergeGroup l.group (ensureGroupUuid env l.group st)).1)
            (mergeGroup l.group (ensureGroupUuid env l.group st)).2)) := rfl
  rw [hr]
  simp only
  rw [work_foldl, work_foldl, work_mergeGroup]
  · exact ensureGroupUuid_stable (stableLeaf_work st.work) (Nat.le_refl _)
  · intro s a
    exact work_of_cursor (by simp) (by simp)
  · intro s a
    exact work_of_cursor (by simp) (by simp)

theorem work_parseEntryFinish (env : Env) (history : Bool) (l : EntryLocals) (st : Reader) :
    (parseEntryFinish env history l st).2.work ≤ st.work := by
  have hr : parseEntryFinish env history l st =
      ((mergeEntry history l.entry (ensureEntryUuid env l.entry st)).1,
        (addHistoryItems (mergeEntry history l.entry (ensureEntryUuid env l.entry st)).1
          l.historyItems
          (mergeEntry history l.entry (ensureEntryUuid env l.entry st)).2).addBinaryRefs
          (l.binaryRefs.map (fun ref =>
            (ref.1, (mergeEntry history l.entry (ensureEntryUuid env l.entry st)).1, ref.2))))
      := rfl
  rw [hr]
  have h1 : (ensureEntryUuid env l.entry st).work ≤ st.work :=
    ensureEntryUuid_stable (stableLeaf_work st.work) (Nat.le_refl _)
  have h2 := work_mergeEntry history l.entry (ensureEntryUuid env l.entry st)
  have h3 : (addHistoryItems (mergeEntry history l.entry (ensureEntryUuid env l.entry st)).1
      l.historyItems (mergeEntry history l.entry (ensureEntryUuid env l.entry st)).2).work
      ≤ st.work :=
    addHistoryItems_stable (stableLeaf_work st.work) (by rw [h2]; exact h1)
  exact h3

theorem entry_total (env : Env) (n : Nat) :
    (∀ history l st, 2 * st.work + 1 ≤ n →
      ∃ r, parseEntryWhile env n history l st = some r ∧ r.2.work ≤ st.work) ∧
    (∀ history st, 2 * st.work + 2 ≤ n →
      ∃ r, parseEntry env n history st = some r ∧ r.2.work ≤ st.work) ∧
    (∀ items st, 2 * st.work + 1 ≤ n →
      ∃ r, parseEntryHistoryWhile env n items st = some r ∧ r.2.work ≤ st.work) ∧
    (∀ st, 2 * st.work + 2 ≤ n →
      ∃ r, parseEntryHistory env n st = some r ∧ r.2.work ≤ st.work) := by
  induction n with
  | zero =>
    refine ⟨?_, ?_, ?_, ?_⟩ <;> intros <;> omega
  | succ n ih =>
    obtain ⟨ihW, ihE, ihHW, ihH⟩ := ih
    refine ⟨?_, ?_, ?_, ?_⟩
    · intro history l st hn
      unfold parseEntryWhile
      cases hr : readNextStartElement st with
      | mk o st1 =>
        cases o with
        | none => exact ⟨_, rfl, work_le_of_readNext_none hr⟩
        | some x =>
          obtain ⟨hw, -⟩ := work_lt_of_readNext_some hr
          simp only
          split
          · split
            · have hw2 : (st1.raiseError "History element in history entry").work = st1.work :=
                work_of_cursor (by simp [Reader.raiseError]) (by simp [Reader.raiseError])
              obtain ⟨r, h1, h2⟩ := ihW history l
                (st1.raiseError "History element in history entry") (by omega)
              exact ⟨r, h1, by omega⟩
            · obtain ⟨⟨items, st2⟩, h1, h2⟩ := ihH st1 (by omega)
              rw [h1]
              simp only at h2 ⊢
              obtain ⟨r, h3, h4⟩ := ihW history { l with historyItems := items } st2 (by omega)
              exact ⟨r, h3, by omega⟩
          · have h2 : (parseEntryField env l.entry x (l.binaryRefs, st1)).2.endElement.work
                ≤ st1.work :=
              Nat.le_trans (work_endElement _)
                (parseEntryField_stable (stableLeaf_work st1.work) (Nat.le_refl _))
            obtain ⟨r, h3, h4⟩ := ihW history
              { l with binaryRefs := (parseEntryField env l.entry x (l.binaryRefs, st1)).1 }
              (parseEntryField env l.entry x (l.binaryRefs, st1)).2.endElement (by omega)
            exact ⟨r, h3, by omega⟩
    · intro history st hn
      unfold parseEntry
      simp only
      have hw0 : (st.newEntry.2.updEntry st.newEntry.1
          (fun e => { e with m_updateTimeinfo := false })).work = st.work :=
        work_of_cursor (by simp [Reader.newEntry]) (by simp [Reader.newEntry])
      obtain ⟨⟨l, st3⟩, h1, h2⟩ := ihW history ⟨st.newEntry.1, [], []⟩
        (st.newEntry.2.updEntry st.newEntry.1 (fun e => { e with m_updateTimeinfo := false }))
        (by omega)
      rw [h1]
      simp only at h2 ⊢
      exact ⟨_, rfl, Nat.le_trans (work_parseEntryFinish env history l st3) (by omega)⟩
    · intro items st hn
      unfold parseEntryHistoryWhile
      cases hr : readNextStartElement st with
      | mk o st1 =>
        cases o with
        | none => exact ⟨_, rfl, work_le_of_readNext_none hr⟩
        | some x =>
          obtain ⟨hw, -⟩ := work_lt_of_readNext_some hr
          simp only
          split
          · obtain ⟨⟨e, st2⟩, h1, h2⟩ := ihE true st1 (by omega)
            rw [h1]
            simp only at h2 ⊢
            obtain ⟨r, h3, h4⟩ := ihHW (items ++ [e]) st2 (by omega)
            exact ⟨r, h3, by omega⟩
          · have h2 : (skipCurrentElement st1).work ≤ st1.work := work_endElement st1
            obtain ⟨r, h3, h4⟩ := ihHW items (skipCurrentElement st1) (by omega)
            exact ⟨r, h3, by omega⟩
    · intro st hn
      unfold parseEntryHistory
      exact ihHW [] st (by omega)

theorem group_total (env : Env) (n : Nat) :
    (∀ l st, 2 * st.work + 1 ≤ n →
      ∃ r, parseGroupWhile env n l st = some r ∧ r.2.work ≤ st.work) ∧
    (∀ st, 2 * st.work + 2 ≤ n →
      ∃ r, parseGroup env n st = some r ∧ r.2.work ≤ st.work) := by
  induction n with
  | zero =>
    refine ⟨?_, ?_⟩ <;> intros <;> omega
  | succ n ih =>
    obtain ⟨ihW, ihG⟩ := ih
    refine ⟨?_, ?_⟩
    · intro l st hn
      unfold parseGroupWhile
      cases hr : readNextStartElement st with
      | mk o st1 =>
        cases o with
        | none => exact ⟨_, rfl, work_le_of_readNext_none hr⟩
        | some x =>
          obtain ⟨hw, -⟩ := work_lt_of_readNext_some hr
          simp only
          split
          · obtain ⟨⟨g, st2⟩, h1, h2⟩ := ihG st1 (by omega)
            rw [h1]
            simp only at h2 ⊢
            obtain ⟨r, h3, h4⟩ := ihW { l with children := l.children ++ [g] } st2 (by omega)
            exact ⟨r, h3, by omega⟩
          · split
            · obtain ⟨⟨e, st2⟩, h1, h2⟩ := (entry_total env n).2.1 false st1 (by omega)
              rw [h1]
              simp only at h2 ⊢
              obtain ⟨r, h3, h4⟩ := ihW { l with entries := l.entries ++ [e] } st2 (by omega)
              exact ⟨r, h3, by omega⟩
            · have h2 : (parseGroupField env l.group x st1).endElement.work ≤ st1.work :=
                Nat.le_trans (work_endElement _)
                  (parseGroupField_stable (stableLeaf_work st1.work) (Nat.le_refl _))
              obtain ⟨r, h3, h4⟩ := ihW l (parseGroupField env l.group x st1).endElement
                (by omega)
              exact ⟨r, h3, by omega⟩
    · intro st hn
      unfold parseGroup
      simp only
      have hw0 : (st.newGroup.2.updGroup st.newGroup.1
          (fun g => { g with m_updateTimeinfo := false })).work = st.work :=
        work_of_cursor (by simp [Reader.newGroup]) (by simp [Reader.newGroup])
      obtain ⟨⟨l, st3⟩, h1, h2⟩ := ihW ⟨st.newGroup.1, [], []⟩
        (st.newGroup.2.updGroup st.newGroup.1 (fun g => { g with m_updateTimeinfo := false }))
        (by omega)
      rw [h1]
      simp only at h2 ⊢
      exact ⟨_, rfl, Nat.le_trans (work_parseGroupFinish env l st3) (by omega)⟩

theorem parseRootWhile_total (env : Env) (n : Nat) :
    ∀ l st, 2 * st.work + 1 ≤ n →
      ∃ r, parseRootWhile env n l st = some r ∧ r.2.work ≤ st.work := by
  induction n with
  | zero => intros; omega
  | succ n ih =>
    intro l st hn
    unfold parseRootWhile
    cases hr : readNextStartElement st with
    | mk o st1 =>
      cases o with
      | none => exact ⟨_, rfl, work_le_of_readNext_none hr⟩
      | some x =>
        obtain ⟨hw, -⟩ := work_lt_of_readNext_some hr
        simp only
        split
        · split
          · have hw2 : (st1.raiseError "Multiple group elements").work = st1.work :=
              work_of_cursor (by simp [Reader.raiseError]) (by simp [Reader.raiseError])
            obtain ⟨r, h1, h2⟩ := ih { l with groupParsedSuccessfully := false }
              (st1.raiseError "Multiple group elements") (by omega)
            exact ⟨r, h1, by omega⟩
          · obtain ⟨⟨g, st2⟩, h1, h2⟩ := (group_total env n).2 st1 (by omega)
            rw [h1]
            simp only at h2 ⊢
            have hw3 : ((st2.setRootGroup g).deleteGroup st2.rootGroup).work = st2.work :=
              work_of_cursor (by simp) (by simp)
            obtain ⟨r, h3, h4⟩ := ih ⟨true, true⟩
              ((st2.setRootGroup g).deleteGroup st2.rootGroup) (by omega)
            exact ⟨r, h3, by omega⟩
        · split
          · have h2 : (parseDeletedObjects env x st1).endElement.work ≤ st1.work :=
              Nat.le_trans (work_endElement _)
                (parseDeletedObjects_stable (stableLeaf_work st1.work) (Nat.le_refl _))
            obtain ⟨r, h3, h4⟩ := ih l (parseDeletedObjects env x st1).endElement (by omega)
            exact ⟨r, h3, by omega⟩
          · have h2 : (skipCurrentElement st1).work ≤ st1.work := work_endElement st1
            obtain ⟨r, h3, h4⟩ := ih l (skipCurrentElement st1) (by omega)
            exact ⟨r, h3, by omega⟩

theorem parseRoot_total (env : Env) (n : Nat) (st : Reader) (hn : 2 * st.work + 2 ≤ n) :
    ∃ r, parseRoot env n st = some r ∧ r.2.work ≤ st.work := by
  cases n with
  | zero => omega
  | succ n =>
    obtain ⟨⟨l, st1⟩, h1, h2⟩ := parseRootWhile_total env n ⟨false, false⟩ st (by omega)
    simp only [parseRoot, h1]
    exact ⟨_, rfl, h2⟩

theorem parseKeePassFileWhile_total (env : Env) (n : Nat) :
    ∀ l st, 2 * st.work + 1 ≤ n →
      ∃ r, parseKeePassFileWhile env n l st = some r ∧ r.2.work ≤ st.work := by
  induction n with
  | zero => intros; omega
  | succ n ih =>
    intro l st hn
    unfold parseKeePassFileWhile
    cases hr : readNextStartElement st with
    | mk o st1 =>
      cases o with
      | none => exact ⟨_, rfl, work_le_of_readNext_none hr⟩
      | some x =>
        obtain ⟨hw, -⟩ := work_lt_of_readNext_some hr
        simp only
        split
        · have h2 : (parseMeta env x st1).endElement.work ≤ st1.work :=
            Nat.le_trans (work_endElement _)
              (parseMeta_stable (stableLeaf_work st1.work) (Nat.le_refl _))
          obtain ⟨r, h3, h4⟩ := ih l (parseMeta env x st1).endElement (by omega)
          exact ⟨r, h3, by omega⟩
        · split
          · split
            · obtain ⟨r, h1, h2⟩ := ih { l with rootParsedSuccessfully := false } st1
                (by omega)
              exact ⟨r, h1, by omega⟩
            · obtain ⟨⟨ok, st2⟩, h1, h2⟩ := parseRoot_total env n st1 (by omega)
              rw [h1]
              simp only at h2 ⊢
              obtain ⟨r, h3, h4⟩ := ih ⟨true, ok⟩ st2 (by omega)
              exact ⟨r, h3, by omega⟩
          · have h2 : (skipCurrentElement st1).work ≤ st1.work := work_endElement st1
            obtain ⟨r, h3, h4⟩ := ih l (skipCurrentElement st1) (by omega)
            exact ⟨r, h3, by omega⟩

theorem parseKeePassFile_total (env : Env) (n : Nat) (st : Reader)
    (hn : 2 * st.work + 2 ≤ n) :
    ∃ r, parseKeePassFile env n st = some r := by
  cases n with
  | zero => omega
  | succ n =>
    obtain ⟨⟨l, st1⟩, h1, -⟩ := parseKeePassFileWhile_total env n ⟨false, false⟩ st (by omega)
    simp only [parseKeePassFile, h1]
    exact ⟨_, rfl⟩

/-- With fuel for every token of the document, `readDatabase` returns. -/
theorem readDatabaseFuel_total (env : Env) (fuel : Nat) (strictMode : Bool)
    (binaryPool : List (String × QByteArray)) (randomStream : Option QByteArray)
    (doc : XmlElement) (hf : 4 * doc.size + 2 ≤ fuel) :
    ∃ st, readDatabaseFuel env fuel strictMode binaryPool randomStream doc = some st := by
  unfold readDatabaseFuel
  have hx0 : (Reader.start strictMode binaryPool randomStream doc).xmlError = false := rfl
  have hp0 : (Reader.start strictMode binaryPool randomStream doc).pending
      = (doc :: []) :: [] := rfl
  rw [readNextStartElement_cons hx0 hp0]
  simp only
  split
  · have hw : ((Reader.start strictMode binaryPool randomStream doc).setPending
        (doc.children :: [] :: [])).work = 2 * doc.size := by
      simp only [Reader.work, Reader.setPending, Reader.start, pendingWork,
        XmlElement.sizeList, size_eq doc, Bool.false_eq_true, if_false]
      omega
    obtain ⟨⟨ok, st2⟩, h1⟩ := parseKeePassFile_total env fuel _ (by rw [hw]; omega)
    rw [h1]
    exact ⟨_, rfl⟩
  · exact ⟨_, rfl⟩

/-- The decode of `readDatabase` returns for every document. -/
theorem readDatabase_total (env : Env) (strictMode : Bool)
    (binaryPool : List (String × QByteArray)) (randomStream : Option QByteArray)
    (doc : XmlElement) :
    ∃ st, readDatabase env strictMode binaryPool randomStream doc = some st :=
  readDatabaseFuel_total env _ strictMode binaryPool randomStream doc (Nat.le_refl _)

/-! ### Runs with a keystream cipher return without a null dereference -/

theorem updGroup_nullDeref (st : Reader) (p : Nat) (f : DbGroup → DbGroup) :
    (st.updGroup p f).nullDeref = st.nullDeref := by
  unfold Reader.updGroup; split <;> rfl

theorem updEntry_nullDeref (st : Reader) (p : Nat) (f : Entry → Entry) :
    (st.updEntry p f).nullDeref = st.nullDeref := by
  unfold Reader.updEntry; split <;> rfl

theorem setParent_nullDeref (st : Reader) (c p : Nat) :
    (st.setParent c p).nullDeref = st.nullDeref := by
  unfold Reader.setParent Reader.cleanupParent
  simp only [updGroup_nullDeref]
  split <;> simp only [updGroup_nullDeref]

theorem setGroup_nullDeref (st : Reader) (e p : Nat) :
    (st.setGroup e p).nullDeref = st.nullDeref := by
  unfold Reader.setGroup
  split
  · rfl
  · simp only [updGroup_nullDeref, updEntry_nullDeref]
    split <;> simp only [updGroup_nullDeref]

theorem setRootGroup_nullDeref (st : Reader) (p : Nat) :
    (st.setRootGroup p).nullDeref = st.nullDeref := by
  unfold Reader.setRootGroup
  simp only [Reader.deleteGroup, Reader.setRootPtr, Reader.cleanupParent, updGroup_nullDeref]
  repeat' (first | rfl | split | simp only [updGroup_nullDeref])

theorem getGroup_nullDeref (u : Uuid) (st : Reader) :
    (getGroup u st).2.nullDeref = st.nullDeref := by
  unfold getGroup
  split
  · rfl
  · split
    · rfl
    · simp only [Reader.registerGroup, setParent_nullDeref, updGroup_nullDeref, Reader.newGroup]

theorem getEntry_nullDeref (u : Uuid) (st : Reader) :
    (getEntry u st).2.nullDeref = st.nullDeref := by
  unfold getEntry
  split
  · rfl
  · split
    · rfl
    · simp only [Reader.registerEntry, setGroup_nullDeref, updEntry_nullDeref, Reader.newEntry]

/-- No step of the reader dereferences `m_randomStream` while it is null as
long as the reader has a keystream cipher: the cipher stays in place, and the
mark `nullDeref` is set only in a state where `m_randomStream` is null. -/
theorem stable_noDeref :
    Stable (fun t => t.nullDeref = false ∧ t.m_randomStream.isSome = true) := by
  refine ⟨⟨?_, ?_, ?_, ?_, ?_, ?_, ?_, ?_, ?_, ?_, ?_, ?_, ?_⟩, ?_, ?_, ?_, ?_, ?_, ?_, ?_, ?_, ?_⟩ <;>
    intros <;> simp_all [Reader.raiseError, Reader.setMeta, Reader.newGroup,
      Reader.newEntry, Reader.randomUuid, Reader.cipherProcess, updGroup_nullDeref,
      updEntry_nullDeref, setParent_nullDeref, setGroup_nullDeref, setRootGroup_nullDeref, getGroup_nullDeref,
      getEntry_nullDeref]

/-- With a keystream cipher the decode of `readDatabase` returns for every
document, and no null `m_randomStream` is dereferenced on the way. -/
theorem readDatabase_returns (env : Env) (strictMode : Bool)
    (binaryPool : List (String × QByteArray)) (rs : QByteArray) (doc : XmlElement) :
    ∃ r, readDatabase env strictMode binaryPool (some rs) doc = some r ∧
      r.nullDeref = false := by
  obtain ⟨r, hr⟩ := readDatabase_total env strictMode binaryPool (some rs) doc
  have h0 : (Reader.start strictMode binaryPool (some rs) doc).nullDeref = false ∧
      (Reader.start strictMode binaryPool (some rs) doc).m_randomStream.isSome = true :=
    ⟨rfl, rfl⟩
  have h : r.nullDeref = false ∧ r.m_randomStream.isSome = true :=
    readDatabaseFuel_stable stable_noDeref h0 hr
  exact ⟨r, hr, h.1⟩

/-- In a state with a keystream cipher and with fuel for every token ahead of
the cursor, the loops and the parse functions of entries return, and no null
`m_randomStream` is dereferenced on the way. -/
theorem entry_returns (env : Env) (n : Nat) (st : Reader) (hd : st.nullDeref = false)
    (hs : st.m_randomStream.isSome = true) (hn : 2 * st.work + 2 ≤ n) :
    (∀ history l, ∃ r, parseEntryWhile env n history l st = some r ∧ r.2.nullDeref = false) ∧
    (∀ history, ∃ r, parseEntry env n history st = some r ∧ r.2.nullDeref = false) ∧
    (∀ items, ∃ r, parseEntryHistoryWhile env n items st = some r ∧ r.2.nullDeref = false) ∧
    (∃ r, parseEntryHistory env n st = some r ∧ r.2.nullDeref = false) := by
  have hP := parseEntry_stable_aux stable_noDeref env n
  refine ⟨fun history l => ?_, fun history => ?_, fun items => ?_, ?_⟩
  · obtain ⟨r, hr, -⟩ := (entry_total env n).1 history l st (by omega)
    exact ⟨r, hr, (hP.1 history l st r ⟨hd, hs⟩ hr).1⟩
  · obtain ⟨r, hr, -⟩ := (entry_total env n).2.1 history st hn
    exact ⟨r, hr, (hP.2.1 history st r ⟨hd, hs⟩ hr).1⟩
  · obtain ⟨r, hr, -⟩ := (entry_total env n).2.2.1 items st (by omega)
    exact ⟨r, hr, (hP.2.2.1 items st r ⟨hd, hs⟩ hr).1⟩
  · obtain ⟨r, hr, -⟩ := (entry_total env n).2.2.2 st hn
    exact ⟨r, hr, (hP.2.2.2 st r ⟨hd, hs⟩ hr).1⟩

/-- The same for the loop and the parse function of groups. -/
theorem group_returns (env : Env) (n : Nat) (st : Reader) (hd : st.nullDeref = false)
    (hs : st.m_randomStream.isSome = true) (hn : 2 * st.work + 2 ≤ n) :
    (∀ l, ∃ r, parseGroupWhile env n l st = some r ∧ r.2.nullDeref = false) ∧
    (∃ r, parseGroup env n st = some r ∧ r.2.nullDeref = false) := by
  have hP := parseGroup_stable_aux stable_noDeref env n
  refine ⟨fun l => ?_, ?_⟩
  · obtain ⟨r, hr, -⟩ := (group_total env n).1 l st (by omega)
    exact ⟨r, hr, (hP.1 l st r ⟨hd, hs⟩ hr).1⟩
  · obtain ⟨r, hr, -⟩ := (group_total env n).2 st hn
    exact ⟨r, hr, (hP.2 st r ⟨hd, hs⟩ hr).1⟩

/-- The same for `parseRoot`. -/
theorem parseRoot_returns (env : Env) (n : Nat) (st : Reader) (hd : st.nullDeref = false)
    (hs : st.m_randomStream.isSome = true) (hn : 2 * st.work + 2 ≤ n) :
    ∃ r, parseRoot env n st = some r ∧ r.2.nullDeref = false := by
  obtain ⟨r, hr, -⟩ := parseRoot_total env n st hn
  have h : r.2.nullDeref = false ∧ r.2.m_randomStream.isSome = true :=
    parseRoot_stable stable_noDeref env n st r ⟨hd, hs⟩ hr
  exact ⟨r, hr, h.1⟩

/-- The same for `parseKeePassFile`. -/
theorem parseKeePassFile_returns (env : Env) (n : Nat) (st : Reader)
    (hd : st.nullDeref = false) (hs : st.m_randomStream.isSome = true)
    (hn : 2 * st.work + 2 ≤ n) :
    ∃ r, parseKeePassFile env n st = some r ∧ r.2.nullDeref = false := by
  obtain ⟨r, hr⟩ := parseKeePassFile_total env n st hn
  have h : r.2.nullDeref = false ∧ r.2.m_randomStream.isSome = true :=
    parseKeePassFile_stable stable_noDeref env n st r ⟨hd, hs⟩ hr
  exact ⟨r, hr, h.1⟩


/-- C9, the claim as stated fails: the document `Sample.docStray` decodes
without error in Strict mode, and its two `Group` elements and its `Entry`
element carry three different non-null UUIDs; it has two `Group` elements and
one `Entry` element outside `History`, yet the decoded database has one group
and no entry. The `Group` element inside `Meta` and the `Entry` element
directly under `Root` are skipped as unknown elements. -/
theorem C9_skipped_elements_are_not_counted :
    (readDatabase Env.sample true [] none Sample.docStray).map Reader.observeCounts
      = some (false, 1, 0) ∧
    Sample.docStray.countNamed "Group" = 2 ∧
    Sample.docStray.countEntriesOutsideHistory = 1 ∧
    ([Sample.uuidA, Sample.uuidB, Sample.uuidC].map (fun t => Uuid.mk (qtFromBase64 t))).Nodup ∧
    ([Sample.uuidA, Sample.uuidB, Sample.uuidC].map
      (fun t => (Uuid.mk (qtFromBase64 t)).isNull)) = [false, false, false] :=
  ⟨rfl, rfl, rfl, by decide, rfl⟩

/-- C9, amended: with a keystream cipher `readDatabase` returns for every
document, without any dereference of a null `m_randomStream`. A decode that ends
without error, and in which no two `Group` elements and no two `Entry`
elements are merged under the same UUID, gives a database with exactly as
many groups, the root included, as the document has `Group` elements in
defining position (the `Group` children of `Root` and of such `Group`
elements) and exactly as many entries as it has `Entry` children of such
`Group` elements; this holds for every amount of fuel with which the decode
returns, that of `readDatabase` included. And a document whose `Root` holds
one `Group` with only a `UUID` element that carries a non-null UUID of 16
bytes decodes, in either mode, without error to a database whose root group
has that UUID, no child group and no entry. Without a keystream cipher the
decode of `Sample.docEntryWith [Sample.protectedBinary "file" "AQID"]`, whose
entry has a protected inline attachment, dereferences the null
`m_randomStream`. -/
theorem C9_counts_of_defining_elements (env : Env) :
    (∀ (strictMode : Bool) (binaryPool : List (String × QByteArray))
      (rs : QByteArray) (doc : XmlElement),
      ∃ st, readDatabase env strictMode binaryPool (some rs) doc = some st ∧
        st.nullDeref = false) ∧
    (∀ (fuel : Nat) (strictMode : Bool) (binaryPool : List (String × QByteArray))
      (randomStream : Option QByteArray) (doc : XmlElement) (st : Reader),
      readDatabaseFuel env fuel strictMode binaryPool randomStream doc = some st →
      st.hasError = false → (st.groupDefs.map Prod.fst).Nodup →
      (st.entryDefs.map Prod.fst).Nodup →
      st.vaultGroups.length = countGroupElements doc ∧
        st.vaultEntries.length = countEntryElements doc) ∧
    (∀ (strictMode : Bool) (binaryPool : List (String × QByteArray))
      (randomStream : Option QByteArray) (a1 a2 a3 a4 : List (String × String))
      (t1 t2 t3 t : String),
      (env.fromBase64 t).length = 16 → (Uuid.mk (env.fromBase64 t)).isNull = false →
      ∃ st, readDatabase env strictMode binaryPool randomStream
          (.mk "KeePassFile" a1 t1 [.mk "Root" a2 t2 [.mk "Group" a3 t3 [.mk "UUID" a4 t []]]])
          = some st ∧ st.hasError = false ∧
        (st.group st.rootGroup).m_uuid = ⟨env.fromBase64 t⟩ ∧
        (st.group st.rootGroup).m_children = [] ∧ (st.group st.rootGroup).m_entries = [] ∧
        st.vaultGroups = [st.rootGroup] ∧ st.vaultEntries = []) ∧
    (readDatabase Env.sample false [] none
      (Sample.docEntryWith [Sample.protectedBinary "file" "AQID"])).map Reader.nullDeref =
      some true := by
  refine ⟨readDatabase_returns env, ?_, ?_, rfl⟩
  · intro fuel strictMode binaryPool randomStream doc st h herr hg he
    refine readDatabaseFuel_counts h ?_
    unfold Reader.hasError at herr
    unfold Reader.Bad
    simp only [Bool.or_eq_false_iff] at herr
    simp [herr.1, herr.2, hg, he]
  · intro strictMode binaryPool randomStream a1 a2 a3 a4 t1 t2 t3 t hlen hnn
    exact readDatabase_uuid_only env strictMode binaryPool randomStream a1 a2 a3 a4 t1 t2 t3 t
      hlen hnn

/-- Witness of C9: the decode of `Sample.docForwardRefs` with the keystream
cipher of state `[]`, with a root group, a child group and an entry in the
child group, gives two groups and one entry;
and the document with only the UUID of `Sample.uuidA` in its root group
decodes. -/
theorem C9_counts_of_defining_elements_witness :
    (∃ st, readDatabase Env.sample true [] (some []) Sample.docForwardRefs = some st ∧
      st.hasError = false ∧ (st.groupDefs.map Prod.fst).Nodup ∧
      (st.entryDefs.map Prod.fst).Nodup ∧
      st.vaultGroups.length = 2 ∧ st.vaultEntries.length = 1) ∧
    (∃ st, readDatabase Env.sample true [] none
        (.mk "KeePassFile" [] "" [.mk "Root" [] "" [.mk "Group" [] ""
          [.mk "UUID" [] Sample.uuidA []]]]) = some st ∧ st.hasError = false ∧
      (st.group st.rootGroup).m_uuid = ⟨[0, 1, 2, 3, 4, 5, 6, 7, 8, 9, 10, 11, 12, 13, 14, 15]⟩ ∧
      (st.group st.rootGroup).m_children = [] ∧ (st.group st.rootGroup).m_entries = [] ∧
      st.vaultGroups = [st.rootGroup] ∧ st.vaultEntries = []) := by
  refine ⟨?_, (C9_counts_of_defining_elements Env.sample).2.2.1 true [] none [] [] [] [] "" "" ""
    Sample.uuidA rfl rfl⟩
  obtain ⟨st, hst, -⟩ := (C9_counts_of_defining_elements Env.sample).1 true [] []
    Sample.docForwardRefs
  have h1 : (readDatabase Env.sample true [] (some []) Sample.docForwardRefs).map Reader.hasError
      = some false := rfl
  have h2 : (readDatabase Env.sample true [] (some []) Sample.docForwardRefs).map
      (fun s => s.groupDefs.map Prod.fst)
      = some [⟨[16, 17, 18, 19, 20, 21, 22, 23, 24, 25, 26, 27, 28, 29, 30, 31]⟩,
        ⟨[0, 1, 2, 3, 4, 5, 6, 7, 8, 9, 10, 11, 12, 13, 14, 15]⟩] := rfl
  have h3 : (readDatabase Env.sample true [] (some []) Sample.docForwardRefs).map
      (fun s => s.entryDefs.map Prod.fst)
      = some [⟨[32, 33, 34, 35, 36, 37, 38, 39, 40, 41, 42, 43, 44, 45, 46, 47]⟩] := rfl
  rw [hst] at h1 h2 h3
  simp only [Option.map_some', Option.some.injEq] at h1 h2 h3
  have hg : (st.groupDefs.map Prod.fst).Nodup := by
    rw [h2]
    decide
  have he : (st.entryDefs.map Prod.fst).Nodup := by
    rw [h3]
    decide
  have hc := (C9_counts_of_defining_elements Env.sample).2.1 _ true [] (some [])
    Sample.docForwardRefs st hst h1 hg he
  have c1 : countGroupElements Sample.docForwardRefs = 2 := rfl
  have c2 : countEntryElements Sample.docForwardRefs = 1 := rfl
  rw [c1, c2] at hc
  exact ⟨st, hst, h1, hg, he, hc⟩

/-! ### C7: errors and the traversal -/

/-- C7, the claim as stated fails: the document `Sample.docErrorThenMore` is
`Sample.docErrorLast` with further elements after the element that raises the
hard error "Invalid EnableAutoType value". Both decodes end with that error, yet
the further elements have entered two entries in the entry registry, put an
entry under the root group, filled the binary pool and advanced the keystream
cipher. -/
theorem C7_elements_after_error_are_processed :
    (readDatabase Env.sample false [] (some []) Sample.docErrorLast).map Reader.observe =
      some (true, "Invalid EnableAutoType value",
        [(⟨[0, 1, 2, 3, 4, 5, 6, 7, 8, 9, 10, 11, 12, 13, 14, 15]⟩, 3)], [], [], [],
        some [], []) ∧
    (readDatabase Env.sample false [] (some []) Sample.docErrorThenMore).map Reader.observe =
      some (true, "Invalid EnableAutoType value",
        [(⟨[0, 1, 2, 3, 4, 5, 6, 7, 8, 9, 10, 11, 12, 13, 14, 15]⟩, 3)],
        [(⟨[16, 17, 18, 19, 20, 21, 22, 23, 24, 25, 26, 27, 28, 29, 30, 31]⟩, 0),
         (⟨[32, 33, 34, 35, 36, 37, 38, 39, 40, 41, 42, 43, 44, 45, 46, 47]⟩, 2)],
        [("7", [4, 5, 6])], [2], some [0], [[1, 2, 3]]) :=
  ⟨rfl, rfl⟩

/-- C7, amended: a hard error once raised is kept: every parse function that
starts with `m_error` set returns, when it returns, with it set, and
`readDatabase` then ends with `hasError()` true; the elements that follow are
still processed. The parse functions that read from the cursor,
`parseKeePassFile`, `parseRoot`, `parseGroup`, `parseEntry` and
`parseEntryHistory`, do return from a state with a keystream cipher when the
fuel covers the tokens left for the reader, without any dereference of a null
`m_randomStream`, and whatever the fuel and the cipher a state they return has
the flag; the fourteen others are given their element, and the state they give
has the flag, for `parseEntryBinary` as long as its run marks no dereference of
a null `m_randomStream`. What stops the processing is an error of the XML
reader: with `m_xml.hasError()` true every loop over child elements ends at
once, with its locals and the whole state untouched. -/
theorem C7_error_kept_xml_error_stops (env : Env) (fuel : Nat) (st : Reader) :
    (st.m_error = true →
      (st.nullDeref = false → st.m_randomStream.isSome = true → 2 * st.work + 2 ≤ fuel →
        (∃ r, parseKeePassFile env fuel st = some r ∧ r.2.nullDeref = false ∧
          r.2.m_error = true) ∧
        (∃ r, parseRoot env fuel st = some r ∧ r.2.nullDeref = false ∧ r.2.m_error = true) ∧
        (∃ r, parseGroup env fuel st = some r ∧ r.2.nullDeref = false ∧ r.2.m_error = true) ∧
        (∀ history, ∃ r, parseEntry env fuel history st = some r ∧ r.2.nullDeref = false ∧
          r.2.m_error = true) ∧
        (∃ r, parseEntryHistory env fuel st = some r ∧ r.2.nullDeref = false ∧
          r.2.m_error = true)) ∧
      (∀ r, parseKeePassFile env fuel st = some r → r.2.m_error = true) ∧
      (∀ r, parseRoot env fuel st = some r → r.2.m_error = true) ∧
      (∀ r, parseGroup env fuel st = some r → r.2.m_error = true) ∧
      (∀ history r, parseEntry env fuel history st = some r → r.2.m_error = true) ∧
      (∀ r, parseEntryHistory env fuel st = some r → r.2.m_error = true) ∧
      (∀ x, (parseMeta env x st).m_error = true) ∧
      (∀ x, (parseMemoryProtection x st).m_error = true) ∧
      (∀ x, (parseCustomIcons env x st).m_error = true) ∧
      (∀ x, (parseIcon env x st).m_error = true) ∧
      (∀ x, (parseBinaries env x st).m_error = true) ∧
      (∀ x, (parseCustomData x st).m_error = true) ∧
      (∀ x, (parseCustomDataItem x st).m_error = true) ∧
      (∀ x, (parseDeletedObjects env x st).m_error = true) ∧
      (∀ x, (parseDeletedObject env x st).m_error = true) ∧
      (∀ x, (parseTimes env x st).2.m_error = true) ∧
      (∀ entry x, (parseEntryString env entry x st).m_error = true) ∧
      (∀ entry x, (parseEntryBinary env entry x st).2.nullDeref = false →
        (parseEntryBinary env entry x st).2.m_error = true) ∧
      (∀ entry x, (parseAutoType env entry x st).m_error = true) ∧
      (∀ entry x, (parseAutoTypeAssoc entry x st).m_error = true) ∧
      (∀ rootGroupParsed, (readDatabaseFinish env rootGroupParsed st).hasError = true)) ∧
    (st.xmlError = true →
      (∀ l, parseKeePassFileWhile env (fuel + 1) l st = some (l, st)) ∧
      (∀ l, parseRootWhile env (fuel + 1) l st = some (l, st)) ∧
      (∀ l, parseGroupWhile env (fuel + 1) l st = some (l, st)) ∧
      (∀ history l, parseEntryWhile env (fuel + 1) history l st = some (l, st)) ∧
      (∀ items, parseEntryHistoryWhile env (fuel + 1) items st = some (items, st)) ∧
      (∀ (σ : Type) (body : XmlElement → σ × Reader → σ × Reader) (xs : List XmlElement)
        (l : σ), forEachChild body xs (l, st) = (l, st)) ∧
      (∀ x, parseMeta env x st = st) ∧
      (∀ x, parseDeletedObjects env x st = st)) := by
  constructor
  · intro h
    have hL := stable_m_error.toStableLeaf
    refine ⟨?_, ?_, ?_, ?_, ?_, ?_, ?_, ?_, ?_, ?_, ?_, ?_, ?_, ?_, ?_, ?_, ?_, ?_, ?_, ?_, ?_⟩
    · intro hd hs hf
      refine ⟨?_, ?_, ?_, ?_, ?_⟩
      · obtain ⟨r, hr, hd1⟩ := parseKeePassFile_returns env fuel st hd hs hf
        exact ⟨r, hr, hd1, parseKeePassFile_stable stable_m_error env fuel st r h hr⟩
      · obtain ⟨r, hr, hd1⟩ := parseRoot_returns env fuel st hd hs hf
        exact ⟨r, hr, hd1, parseRoot_stable stable_m_error env fuel st r h hr⟩
      · obtain ⟨r, hr, hd1⟩ := (group_returns env fuel st hd hs hf).2
        exact ⟨r, hr, hd1, (parseGroup_stable_aux stable_m_error env fuel).2 st r h hr⟩
      · intro history
        obtain ⟨r, hr, hd1⟩ := (entry_returns env fuel st hd hs hf).2.1 history
        exact ⟨r, hr, hd1,
          (parseEntry_stable_aux stable_m_error env fuel).2.1 history st r h hr⟩
      · obtain ⟨r, hr, hd1⟩ := (entry_returns env fuel st hd hs hf).2.2.2
        exact ⟨r, hr, hd1, (parseEntry_stable_aux stable_m_error env fuel).2.2.2 st r h hr⟩
    · exact fun r hr => parseKeePassFile_stable stable_m_error env fuel st r h hr
    · exact fun r hr => parseRoot_stable stable_m_error env fuel st r h hr
    · exact fun r hr => (parseGroup_stable_aux stable_m_error env fuel).2 st r h hr
    · exact fun history r hr => (parseEntry_stable_aux stable_m_error env fuel).2.1 history st r h hr
    · exact fun r hr => (parseEntry_stable_aux stable_m_error env fuel).2.2.2 st r h hr
    · exact fun x => parseMeta_stable hL h
    · exact fun x => parseMemoryProtection_stable hL h
    · exact fun x => parseCustomIcons_stable hL h
    · exact fun x => parseIcon_stable hL h
    · exact fun x => parseBinaries_stable hL h
    · exact fun x => parseCustomData_stable hL h
    · exact fun x => parseCustomDataItem_stable hL h
    · exact fun x => parseDeletedObjects_stable hL h
    · exact fun x => parseDeletedObject_stable hL h
    · exact fun x => parseTimes_stable hL h
    · exact fun entry x => parseEntryString_stable hL h
    · exact fun entry x _ => parseEntryBinary_stable hL h
    · exact fun entry x => parseAutoType_stable hL h
    · exact fun entry x => parseAutoTypeAssoc_stable hL h
    · intro b
      have := @readDatabaseFinish_stable _ hL env b st h
      simp [Reader.hasError, this]
  · intro h
    refine ⟨?_, ?_, ?_, ?_, ?_, ?_, ?_, ?_⟩
    · intro l
      simp [parseKeePassFileWhile, readNextStartElement_of_xmlError h]
    · intro l
      simp [parseRootWhile, readNextStartElement_of_xmlError h]
    · intro l
      simp [parseGroupWhile, readNextStartElement_of_xmlError h]
    · intro history l
      simp [parseEntryWhile, readNextStartElement_of_xmlError h]
    · intro items
      simp [parseEntryHistoryWhile, readNextStartElement_of_xmlError h]
    · intro σ body xs l
      exact forEachChild_of_xmlError body xs (l, st) h
    · intro x
      simp [parseMeta, forEachChild_of_xmlError _ _ ((), st) h]
    · intro x
      simp [parseDeletedObjects, forEachChild_of_xmlError _ _ ((), st) h]

/-- Witness of C7: on the start state of `Sample.docErrorThenMore` with the
keystream cipher of state `[]` and a hard error raised, the decode of the whole
file returns and keeps the error; and with an XML error the loop of
`parseGroup` ends at once. -/
theorem C7_error_kept_xml_error_stops_witness :
    (∃ r, parseKeePassFile Env.sample 60
        ((Reader.start false [] (some []) Sample.docErrorThenMore).raiseError "first") =
        some r ∧ r.2.nullDeref = false ∧ r.2.m_error = true) ∧
    parseGroupWhile Env.sample 1 ⟨0, [], []⟩
        (Reader.start false [] none Sample.docErrorThenMore).setXmlError =
      some (⟨0, [], []⟩, (Reader.start false [] none Sample.docErrorThenMore).setXmlError) :=
  ⟨(((C7_error_kept_xml_error_stops Env.sample 60
      ((Reader.start false [] (some []) Sample.docErrorThenMore).raiseError "first")).1 rfl).1
      rfl rfl (by decide)).1,
   ((C7_error_kept_xml_error_stops Env.sample 0
      (Reader.start false [] none Sample.docErrorThenMore).setXmlError).2 rfl).2.2.1 _⟩

/-! ### C8: references and definitions -/

/-- The `RecycleBinUUID` branch of `parseMetaChild`. -/
theorem parseMetaChild_recycleBin (env : Env) (c : XmlElement) (st : Reader)
    (hc : c.name = "RecycleBinUUID") :
    parseMetaChild env c st =
      (getGroup (readUuid env c st).1 (readUuid env c st).2).2.setMeta
        (fun m => { m with recycleBin := (getGroup (readUuid env c st).1 (readUuid env c st).2).1 }) := by
  unfold parseMetaChild
  repeat rw [if_neg (by rw [hc]; decide)]
  rw [if_pos hc]

/-- The `EntryTemplatesGroup` branch of `parseMetaChild`. -/
theorem parseMetaChild_entryTemplatesGroup (env : Env) (c : XmlElement) (st : Reader)
    (hc : c.name = "EntryTemplatesGroup") :
    parseMetaChild env c st =
      (getGroup (readUuid env c st).1 (readUuid env c st).2).2.setMeta
        (fun m => { m with
          entryTemplatesGroup := (getGroup (readUuid env c st).1 (readUuid env c st).2).1 }) := by
  unfold parseMetaChild
  repeat rw [if_neg (by rw [hc]; decide)]
  rw [if_pos hc]

/-- The `LastSelectedGroup` branch of `parseMetaChild`. -/
theorem parseMetaChild_lastSelectedGroup (env : Env) (c : XmlElement) (st : Reader)
    (hc : c.name = "LastSelectedGroup") :
    parseMetaChild env c st =
      (getGroup (readUuid env c st).1 (readUuid env c st).2).2.setMeta
        (fun m => { m with
          lastSelectedGroup := (getGroup (readUuid env c st).1 (readUuid env c st).2).1 }) := by
  unfold parseMetaChild
  repeat rw [if_neg (by rw [hc]; decide)]
  rw [if_pos hc]

/-- The `LastTopVisibleGroup` branch of `parseMetaChild`. -/
theorem parseMetaChild_lastTopVisibleGroup (env : Env) (c : XmlElement) (st : Reader)
    (hc : c.name = "LastTopVisibleGroup") :
    parseMetaChild env c st =
      (getGroup (readUuid env c st).1 (readUuid env c st).2).2.setMeta
        (fun m => { m with
          lastTopVisibleGroup := (getGroup (readUuid env c st).1 (readUuid env c st).2).1 }) := by
  unfold parseMetaChild
  repeat rw [if_neg (by rw [hc]; decide)]
  rw [if_pos hc]

/-- The `LastTopVisibleEntry` branch of `parseGroupField`. -/
theorem parseGroupField_lastTopVisibleEntry (env : Env) (g : Nat) (c : XmlElement)
    (st : Reader) (hc : c.name = "LastTopVisibleEntry") :
    parseGroupField env g c st =
      (getEntry (readUuid env c st).1 (readUuid env c st).2).2.updGroup g
        (fun x => { x with
          m_lastTopVisibleEntry := (getEntry (readUuid env c st).1 (readUuid env c st).2).1 }) := by
  unfold parseGroupField
  repeat rw [if_neg (by rw [hc]; decide)]
  rw [if_pos hc]

/-! ### C19: `readUuid` by the length of the decoded bytes -/

theorem readString_error_state (x : XmlElement) (st : Reader) :
    (readString x st).2.m_error = st.m_error ∧ (readString x st).2.m_errorStr = st.m_errorStr ∧
      (readString x st).2.m_strictMode = st.m_strictMode := by
  unfold readString
  split
  · exact ⟨rfl, rfl, rfl⟩
  · split
    · exact ⟨rfl, rfl, rfl⟩
    · exact ⟨rfl, rfl, rfl⟩

theorem readString_plain {x : XmlElement} {st : Reader} (hx : st.xmlError = false)
    (hc : x.children = []) : readString x st = (x.text, st) := by
  simp [readString, hx, hc]

/-- C19: for the text `t` that `readString` gives for the element, `readUuid`
returns the UUID made of the base64-decoded bytes of `t` if and only if these
are exactly 16 bytes, and then raises nothing; for no byte at all it returns
the null UUID and raises nothing in either mode; for any other length it
returns the null UUID, with the error "Invalid uuid value" in Strict mode and
without error in Lenient mode. `readString` itself leaves the error state as it
is, and on an element without child elements, read without XML error, it gives
the text of the element and the same state. -/
theorem C19_readUuid_by_length (env : Env) (x : XmlElement) (st : Reader) :
    ((readUuid env x st).1 = ⟨env.fromBase64 (readString x st).1⟩ ↔
      (env.fromBase64 (readString x st).1).length = 16) ∧
    ((env.fromBase64 (readString x st).1).length = 16 →
      readUuid env x st = (⟨env.fromBase64 (readString x st).1⟩, (readString x st).2)) ∧
    (env.fromBase64 (readString x st).1 = [] →
      readUuid env x st = (Uuid.null, (readString x st).2)) ∧
    (env.fromBase64 (readString x st).1 ≠ [] →
      (env.fromBase64 (readString x st).1).length ≠ 16 → st.m_strictMode = true →
      readUuid env x st = (Uuid.null, (readString x st).2.raiseError "Invalid uuid value")) ∧
    (env.fromBase64 (readString x st).1 ≠ [] →
      (env.fromBase64 (readString x st).1).length ≠ 16 → st.m_strictMode = false →
      readUuid env x st = (Uuid.null, (readString x st).2)) ∧
    ((readString x st).2.m_error = st.m_error ∧
      (readString x st).2.m_errorStr = st.m_errorStr) ∧
    (st.xmlError = false → x.children = [] → readString x st = (x.text, st)) := by
  have hs := readString_error_state x st
  have key : ∀ b : QByteArray, b.length ≠ 16 → Uuid.null ≠ ⟨b⟩ := by
    intro b hb e
    apply hb
    have := congrArg (fun u => u.data.length) e
    simpa [Uuid.null] using this.symm
  refine ⟨?_, ?_, ?_, ?_, ?_, ⟨hs.1, hs.2.1⟩, fun hx hc => readString_plain hx hc⟩
  · constructor
    · intro h
      by_contra hl
      have hn : (readUuid env x st).1 = Uuid.null := by
        unfold readUuid readBinary
        simp only [Uuid.Length]
        split
        · rfl
        · split <;> rfl
      rw [hn] at h
      exact key _ hl h
    · intro hl
      unfold readUuid readBinary
      simp only [Uuid.Length]
      have hne : (env.fromBase64 (readString x st).1).isEmpty = false := by
        cases hb : env.fromBase64 (readString x st).1 with
        | nil => simp [hb] at hl
        | cons a l => rfl
      simp [hne, hl]
  · intro hl
    unfold readUuid readBinary
    simp only [Uuid.Length]
    have hne : (env.fromBase64 (readString x st).1).isEmpty = false := by
      cases hb : env.fromBase64 (readString x st).1 with
      | nil => simp [hb] at hl
      | cons a l => rfl
    simp [hne, hl]
  · intro hb
    unfold readUuid readBinary
    simp [hb]
  · intro hb hl hm
    unfold readUuid readBinary
    simp only [Uuid.Length]
    have hne : (env.fromBase64 (readString x st).1).isEmpty = false := by
      cases hb2 : env.fromBase64 (readString x st).1 with
      | nil => exact absurd hb2 hb
      | cons a l => rfl
    simp [hne, hl, hs.2.2, hm]
  · intro hb hl hm
    unfold readUuid readBinary
    simp only [Uuid.Length]
    have hne : (env.fromBase64 (readString x st).1).isEmpty = false := by
      cases hb2 : env.fromBase64 (readString x st).1 with
      | nil => exact absurd hb2 hb
      | cons a l => rfl
    simp [hne, hl, hs.2.2, hm]

/-- Witness of C19: in Strict mode the text `AQID` decodes to three bytes, so
`readUuid` returns the null UUID and raises "Invalid uuid value"; the text of
sixteen bytes gives their UUID. -/
theorem C19_readUuid_by_length_witness :
    readUuid Env.sample (.plain "UUID" "AQID" []) (Reader.start true [] none Sample.docErrorLast) =
      (Uuid.null, (Reader.start true [] none Sample.docErrorLast).raiseError "Invalid uuid value") ∧
    readUuid Env.sample (.plain "UUID" Sample.uuidA []) (Reader.start true [] none Sample.docErrorLast) =
      (⟨[0, 1, 2, 3, 4, 5, 6, 7, 8, 9, 10, 11, 12, 13, 14, 15]⟩,
        Reader.start true [] none Sample.docErrorLast) :=
  ⟨(C19_readUuid_by_length Env.sample (.plain "UUID" "AQID" [])
      (Reader.start true [] none Sample.docErrorLast)).2.2.2.1 (by decide) (by decide) rfl,
   (C19_readUuid_by_length Env.sample (.plain "UUID" Sample.uuidA [])
      (Reader.start true [] none Sample.docErrorLast)).2.1 (by decide)⟩

/-! ### C20: `readDateTime` and texts that match the base64 pattern -/

/-- C20, the claim as stated fails: the text `AQID` is the base64 encoding of
three bytes, not of eight, and it is no ISO-8601 text; in Strict mode
`readDateTime` raises no error on it and returns the instant 197121 seconds
after the start of year 1, the three bytes zero-filled to eight. The empty text
is read the same way, as the start of year 1. -/
theorem C20_short_base64_text_is_accepted :
    Env.sample.fromBase64 "AQID" = [1, 2, 3] ∧ Env.sample.isIsoDate "AQID" = false ∧
    (Reader.start true [] none Sample.docErrorLast).m_strictMode = true ∧
    (readDateTime Env.sample (.plain "CreationTime" "AQID" [])
        (Reader.start true [] none Sample.docErrorLast)).1 = .year1PlusSecs 197121 ∧
    (readDateTime Env.sample (.plain "CreationTime" "AQID" [])
        (Reader.start true [] none Sample.docErrorLast)).2.hasError = false ∧
    (readDateTime Env.sample (.plain "CreationTime" "" [])
        (Reader.start true [] none Sample.docErrorLast)).1 = .year1PlusSecs 0 ∧
    (readDateTime Env.sample (.plain "CreationTime" "" [])
        (Reader.start true [] none Sample.docErrorLast)).2.hasError = false :=
  ⟨by decide, rfl, rfl, by decide, by decide, by decide, by decide⟩

/-- C20, amended: for the text `t` that `readString` gives for the element:
when `t` matches the base64 pattern of `b64regex`, whatever the number of bytes
it decodes to, `readDateTime` raises nothing in either mode and returns the
start of year 1 plus the tick count read from the decoded bytes cut or
zero-filled to eight; else when `t` is valid ISO-8601 text it returns that date
and raises nothing; else it returns the current time, with the error "Invalid
date time value" in Strict mode and without error in Lenient mode. -/
theorem C20_readDateTime_by_pattern (env : Env) (x : XmlElement) (st : Reader) :
    (matchBase64Regex (readString x st).1 = true →
      readDateTime env x st =
        (.year1PlusSecs (toInt64 (bytesToUInt64 (leftJustified8
          (env.fromBase64 (readString x st).1)))), (readString x st).2)) ∧
    (matchBase64Regex (readString x st).1 = false → env.isIsoDate (readString x st).1 = true →
      readDateTime env x st = (.iso (readString x st).1, (readString x st).2)) ∧
    (matchBase64Regex (readString x st).1 = false → env.isIsoDate (readString x st).1 = false →
      st.m_strictMode = true →
      readDateTime env x st =
        (.current, (readString x st).2.raiseError "Invalid date time value")) ∧
    (matchBase64Regex (readString x st).1 = false → env.isIsoDate (readString x st).1 = false →
      st.m_strictMode = false →
      readDateTime env x st = (.current, (readString x st).2)) ∧
    ((readString x st).2.m_error = st.m_error ∧
      (readString x st).2.m_errorStr = st.m_errorStr) ∧
    (st.xmlError = false → x.children = [] → readString x st = (x.text, st)) := by
  have hs := readString_error_state x st
  refine ⟨?_, ?_, ?_, ?_, ⟨hs.1, hs.2.1⟩, fun hx hc => readString_plain hx hc⟩
  · intro h
    unfold readDateTime
    simp [h]
  · intro h h2
    unfold readDateTime
    simp [h, h2]
  · intro h h2 hm
    unfold readDateTime
    simp [h, h2, hs.2.2, hm]
  · intro h h2 hm
    unfold readDateTime
    simp [h, h2, hs.2.2, hm]

/-- Witness of C20: the text `not a date` matches neither pattern; in Strict
mode `readDateTime` raises "Invalid date time value", in Lenient mode it returns
the current time and the state as it was. -/
theorem C20_readDateTime_by_pattern_witness :
    readDateTime Env.sample (.plain "CreationTime" "not a date" [])
        (Reader.start true [] none Sample.docErrorLast) =
      (.current,
        (Reader.start true [] none Sample.docErrorLast).raiseError "Invalid date time value") ∧
    readDateTime Env.sample (.plain "CreationTime" "not a date" [])
        (Reader.start false [] none Sample.docErrorLast) =
      (.current, Reader.start false [] none Sample.docErrorLast) :=
  ⟨(C20_readDateTime_by_pattern Env.sample (.plain "CreationTime" "not a date" [])
      (Reader.start true [] none Sample.docErrorLast)).2.2.1 (by decide) rfl rfl,
   (C20_readDateTime_by_pattern Env.sample (.plain "CreationTime" "not a date" [])
      (Reader.start false [] none Sample.docErrorLast)).2.2.2.1 (by decide) rfl rfl⟩

/-! ### C13, C14: duplicate attributes and attachments of an entry -/

theorem readString_entries (x : XmlElement) (st : Reader) :
    (readString x st).2.entries = st.entries := by
  unfold readString
  split
  · rfl
  · split <;> rfl

theorem forEachChild_entries {σ : Type} {body : XmlElement → σ × Reader → σ × Reader}
    (hbody : ∀ c s, (body c s).2.entries = s.2.entries) (xs : List XmlElement)
    (s : σ × Reader) : (forEachChild body xs s).2.entries = s.2.entries :=
  forEachChild_stable (P := fun t => t.entries = s.2.entries)
    (fun c t ht => (hbody c t).trans ht) rfl

theorem parseEntryStringChild_entries (env : Env) (c : XmlElement) (s : StringLocals × Reader) :
    (parseEntryStringChild env c s).2.entries = s.2.entries := by
  unfold parseEntryStringChild
  split
  · exact readString_entries c s.2
  · split
    · unfold parseEntryStringValue
      simp only
      split
      · split
        · split
          · rename_i h
            have := congrArg (fun r => r.2.entries) h
            simp only [Reader.cipherProcess] at this
            simp only [Reader.raiseError_entries]
            rw [← this]
            exact readString_entries c s.2
          · rename_i h
            have := congrArg (fun r => r.2.entries) h
            simp only [Reader.cipherProcess] at this
            simp only
            rw [← this]
            exact readString_entries c s.2
        · simp only [Reader.raiseError_entries]
          exact readString_entries c s.2
      · exact readString_entries c s.2
    · rfl

theorem parseEntryBinaryChild_entries (env : Env) (c : XmlElement) (s : BinaryLocals × Reader) :
    (parseEntryBinaryChild env c s).2.entries = s.2.entries := by
  unfold parseEntryBinaryChild
  split
  · exact readString_entries c s.2
  · split
    · unfold parseEntryBinaryValue readBinary
      simp only
      split
      · rfl
      · split
        · split
          · split
            · rename_i h
              have := congrArg (fun r => r.2.entries) h
              simp only [Reader.cipherProcess] at this
              simp only [Reader.raiseError_entries]
              rw [← this]
              exact readString_entries c s.2
            · rename_i h
              have := congrArg (fun r => r.2.entries) h
              simp only [Reader.cipherProcess] at this
              simp only
              rw [← this]
              exact readString_entries c s.2
          · exact readString_entries c s.2
        · exact readString_entries c s.2
    · rfl

/-- C13: in every state, so in both modes, for the locals `l` and the state
`st1` that the loop of `parseEntryString` ends with (the loop leaves the
entries as they are): when a `Key` and a `Value` have been read and the entry
holds the attribute `l.key` with a non-empty value, `parseEntryString` raises
"Duplicate custom attribute found" and leaves every entry, so the stored value
and its protected flag, as it was; when the value held is empty, it raises
nothing and stores the element's value and protected flag under the key. A
`String` element with just an unprotected `Key` and `Value` ends the loop with
their texts as key and value and the state as it was. The document
`Sample.docDuplicateString`, whose entry has two `String` elements with the key
`Title`, ends the decode in both modes with this error and the first value. -/
theorem C13_duplicate_attribute (env : Env) (entry : Nat) (x : XmlElement) (st : Reader) :
    (∀ l st1, forEachChild (parseEntryStringChild env) x.children
        (⟨"", "", false, false, false⟩, st) = (l, st1) →
      st1.entries = st.entries ∧
      (l.keySet = true → l.valueSet = true → (st.entry entry).hasAttribute l.key = true →
        ((st.entry entry).attributeValue l.key).isEmpty = false →
        parseEntryString env entry x st = st1.raiseError "Duplicate custom attribute found" ∧
        (parseEntryString env entry x st).m_error = true ∧
        (parseEntryString env entry x st).m_errorStr = "Duplicate custom attribute found" ∧
        (parseEntryString env entry x st).entries = st.entries) ∧
      (l.keySet = true → l.valueSet = true →
        ((st.entry entry).attributeValue l.key).isEmpty = true →
        parseEntryString env entry x st =
          st1.updEntry entry (fun e => e.setAttribute l.key l.value l.protect) ∧
        (parseEntryString env entry x st).m_error = st1.m_error ∧
        (parseEntryString env entry x st).m_errorStr = st1.m_errorStr ∧
        (entry < st.entries.length →
          mapGet l.key ((parseEntryString env entry x st).entry entry).m_attributes =
            some (l.value, l.protect)))) ∧
    (∀ a1 a2 k v, st.xmlError = false →
      x.children = [.mk "Key" a1 k [], .mk "Value" a2 v []] →
      (XmlElement.mk "Value" a2 v []).attr "Protected" ≠ "True" →
      forEachChild (parseEntryStringChild env) x.children (⟨"", "", false, false, false⟩, st) =
        (⟨k, v, decide ((XmlElement.mk "Value" a2 v []).attr "ProtectInMemory" = "True"),
          true, true⟩, st)) ∧
    (readDatabase Env.sample true [] none Sample.docDuplicateString).map Reader.observeEntry =
      some (true, "Duplicate custom attribute found", some ("one", false), []) ∧
    (readDatabase Env.sample false [] none Sample.docDuplicateString).map Reader.observeEntry =
      some (true, "Duplicate custom attribute found", some ("one", false), []) := by
  refine ⟨?_, ?_, rfl, rfl⟩
  · intro l st1 hloop
    have he : st1.entries = st.entries := by
      have := forEachChild_entries (parseEntryStringChild_entries env) x.children
        (⟨"", "", false, false, false⟩, st)
      rw [hloop] at this
      exact this
    have hent : st1.entry entry = st.entry entry := by
      unfold Reader.entry
      rw [he]
    refine ⟨he, ?_, ?_⟩
    · intro hk hv ha hne
      have e : parseEntryString env entry x st =
          st1.raiseError "Duplicate custom attribute found" := by
        unfold parseEntryString
        rw [hloop]
        simp [hk, hv, hent, ha, hne]
      rw [e]
      exact ⟨rfl, rfl, rfl, he⟩
    · intro hk hv hem
      have e : parseEntryString env entry x st =
          st1.updEntry entry (fun e => e.setAttribute l.key l.value l.protect) := by
        unfold parseEntryString
        rw [hloop]
        simp [hk, hv, hent, hem]
      rw [e]
      refine ⟨rfl, by simp, ?_, ?_⟩
      · unfold Reader.updEntry
        split <;> rfl
      · intro hlt
        rw [entry_updEntry]
        rw [if_pos ⟨rfl, by rw [he]; exact hlt⟩]
        exact mapGet_mapSet_self _ _ _
  · intro a1 a2 k v hx hc hp
    rw [hc]
    have hp2 : ¬ (XmlElement.attr (.mk "Value" a2 v []) "Protected" = "True") := hp
    simp [forEachChild, parseEntryStringChild, parseEntryStringValue, readString, hx,
      XmlElement.name, XmlElement.children, XmlElement.text, skipChild, hp2]

/-- Witness of C13: an entry whose attribute `Title` holds `old`, and a
`String` element with the key `Title` and the value `new`: the duplicate error
is raised and the entry keeps `old`; with the default empty `Title` the value
`new` is stored. -/
theorem C13_duplicate_attribute_witness :
    (parseEntryString Env.sample 0
        (.plain "String" "" [.plain "Key" "Title" [], .plain "Value" "new" []])
        ((Reader.start false [] none Sample.docErrorLast).newEntry.2.updEntry 0
          (fun e => e.setAttribute "Title" "old" false))).m_errorStr =
      "Duplicate custom attribute found" ∧
    mapGet "Title" ((parseEntryString Env.sample 0
        (.plain "String" "" [.plain "Key" "Title" [], .plain "Value" "new" []])
        (Reader.start false [] none Sample.docErrorLast).newEntry.2).entry 0).m_attributes =
      some ("new", false) :=
  ⟨((C13_duplicate_attribute Env.sample 0
      (.plain "String" "" [.plain "Key" "Title" [], .plain "Value" "new" []])
      ((Reader.start false [] none Sample.docErrorLast).newEntry.2.updEntry 0
        (fun e => e.setAttribute "Title" "old" false))).1
      ⟨"Title", "new", false, true, true⟩ _ rfl).2.1 rfl rfl (by decide) (by decide) |>.2.2.1,
   ((C13_duplicate_attribute Env.sample 0
      (.plain "String" "" [.plain "Key" "Title" [], .plain "Value" "new" []])
      (Reader.start false [] none Sample.docErrorLast).newEntry.2).1
      ⟨"Title", "new", false, true, true⟩ _ rfl).2.2 rfl rfl (by decide) |>.2.2.2 (by decide)⟩

/-- C14: in every state, so in both modes, for the locals `l` and the state
`st1` that the loop of `parseEntryBinary` ends with (the loop leaves the
entries as they are): when a `Key` and a `Value` have been read, inline or as a
pool reference, and the entry holds an attachment named `l.key` already,
`parseEntryBinary` raises "Duplicate attachment found" and leaves every entry
as it was; when the entry holds no such attachment it raises nothing and
declares the attachment. A `Binary` element with a `Key` and then a `Value`
that refers to the pool, or an unprotected inline `Value`, ends the loop with
the text of `Key` as key and the state as it was. The document
`Sample.docDuplicateBinary`, whose entry has two `Binary` elements with the key
`file`, ends the decode in both modes with this error. -/
theorem C14_duplicate_attachment (env : Env) (entry : Nat) (x : XmlElement) (st : Reader) :
    (∀ l st1, forEachChild (parseEntryBinaryChild env) x.children
        (⟨(none, ""), "", [], false, false⟩, st) = (l, st1) →
      st1.entries = st.entries ∧
      (l.keySet = true → l.valueSet = true → (st.entry entry).hasAttachment l.key = true →
        parseEntryBinary env entry x st =
          (l.poolRef, st1.raiseError "Duplicate attachment found") ∧
        (parseEntryBinary env entry x st).2.m_error = true ∧
        (parseEntryBinary env entry x st).2.m_errorStr = "Duplicate attachment found" ∧
        (parseEntryBinary env entry x st).2.entries = st.entries) ∧
      (l.keySet = true → l.valueSet = true → (st.entry entry).hasAttachment l.key = false →
        parseEntryBinary env entry x st =
          (l.poolRef, st1.updEntry entry (fun e => e.setAttachment l.key l.value)) ∧
        (parseEntryBinary env entry x st).2.m_error = st1.m_error ∧
        (parseEntryBinary env entry x st).2.m_errorStr = st1.m_errorStr ∧
        (entry < st.entries.length →
          ((parseEntryBinary env entry x st).2.entry entry).hasAttachment l.key = true))) ∧
    (∀ a1 a2 k v, st.xmlError = false →
      x.children = [.mk "Key" a1 k [], .mk "Value" a2 v []] →
      (XmlElement.mk "Value" a2 v []).hasAttribute "Ref" = true →
      forEachChild (parseEntryBinaryChild env) x.children (⟨(none, ""), "", [], false, false⟩, st) =
        (⟨(some ((XmlElement.mk "Value" a2 v []).attr "Ref"), k), k, [], true, true⟩, st)) ∧
    (∀ a1 a2 k v, st.xmlError = false →
      x.children = [.mk "Key" a1 k [], .mk "Value" a2 v []] →
      (XmlElement.mk "Value" a2 v []).hasAttribute "Ref" = false →
      (XmlElement.mk "Value" a2 v []).hasAttribute "Protected" = false →
      forEachChild (parseEntryBinaryChild env) x.children (⟨(none, ""), "", [], false, false⟩, st) =
        (⟨(none, ""), k, env.fromBase64 v, true, true⟩, st)) ∧
    (readDatabase Env.sample true [("7", [9])] none Sample.docDuplicateBinary).map
        (fun s => (s.hasError, s.errorString)) = some (true, "Duplicate attachment found") ∧
    (readDatabase Env.sample false [("7", [9])] none Sample.docDuplicateBinary).map
        (fun s => (s.hasError, s.errorString)) = some (true, "Duplicate attachment found") := by
  refine ⟨?_, ?_, ?_, rfl, rfl⟩
  · intro l st1 hloop
    have he : st1.entries = st.entries := by
      have := forEachChild_entries (parseEntryBinaryChild_entries env) x.children
        (⟨(none, ""), "", [], false, false⟩, st)
      rw [hloop] at this
      exact this
    have hent : st1.entry entry = st.entry entry := by
      unfold Reader.entry
      rw [he]
    refine ⟨he, ?_, ?_⟩
    · intro hk hv ha
      have e : parseEntryBinary env entry x st =
          (l.poolRef, st1.raiseError "Duplicate attachment found") := by
        unfold parseEntryBinary
        rw [hloop]
        simp [hk, hv, hent, ha]
      rw [e]
      exact ⟨rfl, rfl, rfl, he⟩
    · intro hk hv ha
      have e : parseEntryBinary env entry x st =
          (l.poolRef, st1.updEntry entry (fun e => e.setAttachment l.key l.value)) := by
        unfold parseEntryBinary
        rw [hloop]
        simp [hk, hv, hent, ha]
      rw [e]
      refine ⟨rfl, by simp, ?_, ?_⟩
      · show (st1.updEntry entry _).m_errorStr = st1.m_errorStr
        unfold Reader.updEntry
        split <;> rfl
      · intro hlt
        show ((st1.updEntry entry _).entry entry).hasAttachment l.key = true
        rw [entry_updEntry]
        rw [if_pos ⟨rfl, by rw [he]; exact hlt⟩]
        simp [Entry.hasAttachment, Entry.setAttachment, mapGet_mapSet_self]
  · intro a1 a2 k v hx hc hp
    rw [hc]
    simp [forEachChild, parseEntryBinaryChild, parseEntryBinaryValue, readString, hx,
      XmlElement.name, XmlElement.children, XmlElement.text, skipChild, hp]
  · intro a1 a2 k v hx hc hp hq
    rw [hc]
    simp [forEachChild, parseEntryBinaryChild, parseEntryBinaryValue, readString, readBinary, hx,
      XmlElement.name, XmlElement.children, XmlElement.text, skipChild, hp, hq]

/-- Witness of C14: an entry that holds the attachment `file`, and a `Binary`
element with the key `file` and a reference to the pool: the duplicate error is
raised. -/
theorem C14_duplicate_attachment_witness :
    (parseEntryBinary Env.sample 0
        (.plain "Binary" "" [.plain "Key" "file" [], .mk "Value" [("Ref", "7")] "" []])
        ((Reader.start true [] none Sample.docErrorLast).newEntry.2.updEntry 0
          (fun e => e.setAttachment "file" [1]))).2.m_errorStr =
      "Duplicate attachment found" :=
  ((C14_duplicate_attachment Env.sample 0
      (.plain "Binary" "" [.plain "Key" "file" [], .mk "Value" [("Ref", "7")] "" []])
      ((Reader.start true [] none Sample.docErrorLast).newEntry.2.updEntry 0
        (fun e => e.setAttachment "file" [1]))).1
      ⟨(some "7", "file"), "file", [], true, true⟩ _ rfl).2.1 rfl rfl (by decide) |>.2.2.1

/-! ### C11: the pool after the `Binaries` section -/

theorem forEachChild_xmlError {σ : Type} (body : XmlElement → σ × Reader → σ × Reader)
    (hbody : ∀ c s, s.2.xmlError = true → (body c s).2.xmlError = true)
    (xs : List XmlElement) (s : σ × Reader) (h : s.2.xmlError = true) :
    (forEachChild body xs s).2.xmlError = true :=
  forEachChild_stable (P := fun t => t.xmlError = true) (fun c t ht => hbody c t ht) h

theorem parseBinariesChild_step (env : Env) (c : XmlElement) (st : Reader)
    (hx : st.xmlError = false) :
    ((parseBinariesChild env c ((), st)).2.xmlError = false →
      (parseBinariesChild env c ((), st)).2.m_binaryPool =
        if c.name = "Binary" then mapSet (c.attr "ID") (binaryData env c) st.m_binaryPool
        else st.m_binaryPool) ∧
    ((c.name = "Binary" → eqIgnoreCase (c.attr "Compressed") "True" = true →
        (env.decompress (env.fromBase64 c.text)).1 = true) →
      (parseBinariesChild env c ((), st)).2.m_error = st.m_error ∧
      (parseBinariesChild env c ((), st)).2.m_errorStr = st.m_errorStr) := by
  unfold parseBinariesChild
  by_cases hn : c.name = "Binary"
  · simp only [hn, ne_eq, not_true_eq_false, if_false, if_true]
    by_cases hc : c.children.isEmpty = true
    · have hr : readString c st = (c.text, st) := by simp [readString, hx, hc]
      by_cases hz : eqIgnoreCase (c.attr "Compressed") "True" = true
      · simp only [hz, if_true, readCompressedBinary, readBinary, hr, binaryData]
        constructor
        · intro _
          split <;> simp
        · intro hd
          have := hd trivial trivial
          simp [this]
      · simp only [hz, if_false, readBinary, hr, binaryData, Bool.false_eq_true]
        simp
    · have hr : readString c st = (c.text, st.setXmlError) := by simp [readString, hx, hc]
      by_cases hz : eqIgnoreCase (c.attr "Compressed") "True" = true
      · simp only [hz, if_true, readCompressedBinary, readBinary, hr]
        constructor
        · intro h
          exfalso
          revert h
          split <;> simp
        · intro hd
          have := hd trivial trivial
          simp [this]
      · simp only [hz, if_false, readBinary, hr, Bool.false_eq_true]
        simp
  · simp [hn, skipChild]

theorem parseBinariesChild_xmlError (env : Env) (c : XmlElement) (s : Unit × Reader)
    (h : s.2.xmlError = true) : (parseBinariesChild env c s).2.xmlError = true :=
  parseBinariesChild_stable stable_xmlError.toStableLeaf h

/-- The pool after the loop of `parseBinaries` that ends without XML error. -/
theorem parseBinaries_pool (env : Env) (xs : List XmlElement) (st : Reader)
    (h : (forEachChild (parseBinariesChild env) xs ((), st)).2.xmlError = false) :
    (forEachChild (parseBinariesChild env) xs ((), st)).2.m_binaryPool =
      xs.foldl (fun pool c =>
        if c.name = "Binary" then mapSet (c.attr "ID") (binaryData env c) pool else pool)
        st.m_binaryPool := by
  induction xs generalizing st with
  | nil => rfl
  | cons c rest ih =>
    have hx : st.xmlError = false := by
      by_contra hx
      have hx1 : st.xmlError = true := by simpa using hx
      have := forEachChild_xmlError _ (parseBinariesChild_xmlError env) (c :: rest) ((), st) hx1
      rw [h] at this
      cases this
    unfold forEachChild at h ⊢
    simp only [hx, Bool.false_eq_true, if_false] at h ⊢
    have hx2 : (parseBinariesChild env c ((), st)).2.xmlError = false := by
      by_contra hx2
      have hx3 : (parseBinariesChild env c ((), st)).2.xmlError = true := by simpa using hx2
      have := forEachChild_xmlError _ (parseBinariesChild_xmlError env) rest _ hx3
      rw [h] at this
      cases this
    have e : parseBinariesChild env c ((), st) = ((), (parseBinariesChild env c ((), st)).2) := rfl
    rw [e] at h ⊢
    rw [ih _ h, (parseBinariesChild_step env c st hx).1 hx2]
    rfl

theorem parseBinaries_error (env : Env) (xs : List XmlElement) (st : Reader)
    (hd : ∀ c ∈ xs, c.name = "Binary" → eqIgnoreCase (c.attr "Compressed") "True" = true →
      (env.decompress (env.fromBase64 c.text)).1 = true) :
    (forEachChild (parseBinariesChild env) xs ((), st)).2.m_error = st.m_error ∧
    (forEachChild (parseBinariesChild env) xs ((), st)).2.m_errorStr = st.m_errorStr := by
  induction xs generalizing st with
  | nil => exact ⟨rfl, rfl⟩
  | cons c rest ih =>
    unfold forEachChild
    split
    · exact ⟨rfl, rfl⟩
    · rename_i hx
      have hx1 : st.xmlError = false := by simpa using hx
      have e : parseBinariesChild env c ((), st) = ((), (parseBinariesChild env c ((), st)).2) := rfl
      rw [e]
      have h1 := ih (parseBinariesChild env c ((), st)).2
        (fun c1 hc1 => hd c1 (List.mem_cons_of_mem _ hc1))
      have h2 := (parseBinariesChild_step env c st hx1).2 (hd c (List.mem_cons_self _ _))
      exact ⟨h1.1.trans h2.1, h1.2.trans h2.2⟩

theorem getLast?_filter_cons {α : Type} (p : α → Bool) (c : α) (rest : List α) :
    (List.filter p (c :: rest)).getLast? =
      match (List.filter p rest).getLast? with
      | some d => some d
      | none => if p c then some c else none := by
  by_cases hc : p c = true
  · rw [List.filter_cons_of_pos hc]
    cases hl : (List.filter p rest).getLast? with
    | none =>
      have hnil : List.filter p rest = [] := by simpa using hl
      simp [hnil, hc]
    | some d =>
      have hne : List.filter p rest ≠ [] := by
        intro e
        rw [e] at hl
        cases hl
      have e : (c :: List.filter p rest).getLast? = (List.filter p rest).getLast? := by
        cases hf : List.filter p rest with
        | nil => exact absurd hf hne
        | cons a l => simp [List.getLast?_cons_cons]
      rw [e, hl]
  · rw [List.filter_cons_of_neg hc]
    cases hl : (List.filter p rest).getLast? with
    | none => simp [hc]
    | some d => rfl

theorem mapGet_foldl_binaries (env : Env) (id : String) (xs : List XmlElement)
    (pool : List (String × QByteArray)) :
    mapGet id (xs.foldl (fun pool c =>
        if c.name = "Binary" then mapSet (c.attr "ID") (binaryData env c) pool else pool) pool) =
      match (binariesOf xs id).getLast? with
      | some c => some (binaryData env c)
      | none => mapGet id pool := by
  induction xs generalizing pool with
  | nil => rfl
  | cons c rest ih =>
    rw [List.foldl_cons, ih]
    unfold binariesOf
    rw [getLast?_filter_cons]
    cases hl : (List.filter (fun c => c.name = "Binary" && c.attr "ID" = id) rest).getLast? with
    | some d => rfl
    | none =>
      simp only
      by_cases hn : c.name = "Binary"
      · by_cases hid : c.attr "ID" = id
        · simp [hn, hid, mapGet_mapSet_self]
        · simp [hn, hid, mapGet_mapSet_of_ne (Ne.symm hid)]
      · simp [hn]

/-- C11: when `parseBinaries` ends without XML error, the pool maps every id
that a `Binary` child element declares to the bytes of the last `Binary` child
element with that id, and keeps the bytes of every other id; a repeated id
raises nothing: when every compressed `Binary` child element decompresses, the
error state after `parseBinaries` is the one before. The document
`Sample.docTwoBinaries`, which declares the id `7` twice, decodes in both modes
without error, with the second element's bytes in the pool and in the
attachment that refers to the id. -/
theorem C11_pool_holds_last_binary (env : Env) (x : XmlElement) (st : Reader) :
    ((parseBinaries env x st).xmlError = false →
      (∀ id c, (binariesOf x.children id).getLast? = some c →
        mapGet id (parseBinaries env x st).m_binaryPool = some (binaryData env c)) ∧
      (∀ id, binariesOf x.children id = [] →
        mapGet id (parseBinaries env x st).m_binaryPool = mapGet id st.m_binaryPool)) ∧
    ((∀ c ∈ x.children, c.name = "Binary" → eqIgnoreCase (c.attr "Compressed") "True" = true →
        (env.decompress (env.fromBase64 c.text)).1 = true) →
      (parseBinaries env x st).m_error = st.m_error ∧
      (parseBinaries env x st).m_errorStr = st.m_errorStr) ∧
    (readDatabase Env.sample true [] none Sample.docTwoBinaries).map Reader.observePool =
      some (false, [("7", [4, 5, 6])], [("file", [4, 5, 6])]) ∧
    (readDatabase Env.sample false [] none Sample.docTwoBinaries).map Reader.observePool =
      some (false, [("7", [4, 5, 6])], [("file", [4, 5, 6])]) := by
  refine ⟨?_, ?_, rfl, rfl⟩
  · intro hx
    have hp := parseBinaries_pool env x.children st hx
    constructor
    · intro id c hc
      unfold parseBinaries
      rw [hp, mapGet_foldl_binaries, hc]
    · intro id hc
      unfold parseBinaries
      rw [hp, mapGet_foldl_binaries, hc]
      rfl
  · intro hd
    exact parseBinaries_error env x.children st hd

/-- Witness of C11: the `Binaries` section of `Sample.docTwoBinaries`, read in
the start state: the id `7` holds the bytes of the second element. -/
theorem C11_pool_holds_last_binary_witness :
    mapGet "7" (parseBinaries Env.sample
        (.plain "Binaries" "" [.mk "Binary" [("ID", "7")] "AQID" [],
          .mk "Binary" [("ID", "7")] "BAUG" []])
        (Reader.start true [] none Sample.docTwoBinaries)).m_binaryPool = some [4, 5, 6] :=
  ((C11_pool_holds_last_binary Env.sample
      (.plain "Binaries" "" [.mk "Binary" [("ID", "7")] "AQID" [],
        .mk "Binary" [("ID", "7")] "BAUG" []])
      (Reader.start true [] none Sample.docTwoBinaries)).1 rfl).1 "7"
    (.mk "Binary" [("ID", "7")] "BAUG" []) rfl

/-! ### Every leaf parse function keeps a property of the two heaps -/

theorem readString_at {P : Reader → Prop} {group entry : Nat} (hP : LeafData group entry P) {x : XmlElement} {st : Reader}
    (h : P st) : P ((readString x st).2) := by
  unfold readString
  repeat' (first
    | assumption
    | with_reducible apply stable_ite
    | with_reducible apply stable_ite_snd
    | exact fun _ => rfl
    | with_reducible apply hP.updGroup
    | with_reducible apply hP.updEntry
    | with_reducible apply hP.raiseError
    | with_reducible apply hP.setMeta
    | with_reducible apply hP.randomUuid
    | with_reducible apply hP.cipherProcess
    | with_reducible apply hP.setNullDeref
    | with_reducible apply hP.setXmlError
    | with_reducible apply hP.setHeaderHash
    | with_reducible apply hP.setBinaryPool
    | with_reducible apply hP.addDeletedObject
    | refine snd_of_eq (by assumption) (hP.cipherProcess _ _ _ _ ?_)
    | refine snd_of_eq (by assumption) (hP.randomUuid _ _ ?_)
    | dsimp only
    | split)

theorem readBool_at {P : Reader → Prop} {group entry : Nat} (hP : LeafData group entry P) {x : XmlElement} {st : Reader}
    (h : P st) : P ((readBool x st).2) := by
  unfold readBool
  repeat' (first
    | assumption
    | with_reducible apply stable_ite
    | with_reducible apply stable_ite_snd
    | exact fun _ => rfl
    | with_reducible apply hP.updGroup
    | with_reducible apply hP.updEntry
    | with_reducible apply hP.raiseError
    | with_reducible apply hP.setMeta
    | with_reducible apply hP.randomUuid
    | with_reducible apply hP.cipherProcess
    | with_reducible apply hP.setNullDeref
    | with_reducible apply hP.setXmlError
    | with_reducible apply hP.setHeaderHash
    | with_reducible apply hP.setBinaryPool
    | with_reducible apply hP.addDeletedObject
    | with_reducible apply readString_at hP
    | refine snd_of_eq (by assumption) (readString_at hP ?_)
    | refine snd_of_eq (by assumption) (hP.cipherProcess _ _ _ _ ?_)
    | refine snd_of_eq (by assumption) (hP.randomUuid _ _ ?_)
    | dsimp only
    | split)

theorem readNumber_at {P : Reader → Prop} {group entry : Nat} (hP : LeafData group entry P) {env : Env} {x : XmlElement} {st : Reader}
    (h : P st) : P ((readNumber env x st).2) := by
  unfold readNumber
  repeat' (first
    | assumption
    | with_reducible apply stable_ite
    | with_reducible apply stable_ite_snd
    | exact fun _ => rfl
    | with_reducible apply hP.updGroup
    | with_reducible apply hP.updEntry
    | with_reducible apply hP.raiseError
    | with_reducible apply hP.setMeta
    | with_reducible apply hP.randomUuid
    | with_reducible apply hP.cipherProcess
    | with_reducible apply hP.setNullDeref
    | with_reducible apply hP.setXmlError
    | with_reducible apply hP.setHeaderHash
    | with_reducible apply hP.setBinaryPool
    | with_reducible apply hP.addDeletedObject
    | with_reducible apply readString_at hP
    | refine snd_of_eq (by assumption) (readString_at hP ?_)
    | refine snd_of_eq (by assumption) (hP.cipherProcess _ _ _ _ ?_)
    | refine snd_of_eq (by assumption) (hP.randomUuid _ _ ?_)
    | dsimp only
    | split)

theorem readBinary_at {P : Reader → Prop} {group entry : Nat} (hP : LeafData group entry P) {env : Env} {x : XmlElement} {st : Reader}
    (h : P st) : P ((readBinary env x st).2) := by
  unfold readBinary
  repeat' (first
    | assumption
    | with_reducible apply stable_ite
    | with_reducible apply stable_ite_snd
    | exact fun _ => rfl
    | with_reducible apply hP.updGroup
    | with_reducible apply hP.updEntry
    | with_reducible apply hP.raiseError
    | with_reducible apply hP.setMeta
    | with_reducible apply hP.randomUuid
    | with_reducible apply hP.cipherProcess
    | with_reducible apply hP.setNullDeref
    | with_reducible apply hP.setXmlError
    | with_reducible apply hP.setHeaderHash
    | with_reducible apply hP.setBinaryPool
    | with_reducible apply hP.addDeletedObject
    | with_reducible apply readString_at hP
    | refine snd_of_eq (by assumption) (readString_at hP ?_)
    | refine snd_of_eq (by assumption) (hP.cipherProcess _ _ _ _ ?_)
    | refine snd_of_eq (by assumption) (hP.randomUuid _ _ ?_)
    | dsimp only
    | split)

theorem readUuid_at {P : Reader → Prop} {group entry : Nat} (hP : LeafData group entry P) {env : Env} {x : XmlElement} {st : Reader}
    (h : P st) : P ((readUuid env x st).2) := by
  unfold readUuid
  repeat' (first
    | assumption
    | with_reducible apply stable_ite
    | with_reducible apply stable_ite_snd
    | exact fun _ => rfl
    | with_reducible apply hP.updGroup
    | with_reducible apply hP.updEntry
    | with_reducible apply hP.raiseError
    | with_reducible apply hP.setMeta
    | with_reducible apply hP.randomUuid
    | with_reducible apply hP.cipherProcess
    | with_reducible apply hP.setNullDeref
    | with_reducible apply hP.setXmlError
    | with_reducible apply hP.setHeaderHash
    | with_reducible apply hP.setBinaryPool
    | with_reducible apply hP.addDeletedObject
    | with_reducible apply readBinary_at hP
    | refine snd_of_eq (by assumption) (readBinary_at hP ?_)
    | refine snd_of_eq (by assumption) (hP.cipherProcess _ _ _ _ ?_)
    | refine snd_of_eq (by assumption) (hP.randomUuid _ _ ?_)
    | dsimp only
    | split)

theorem readCompressedBinary_at {P : Reader → Prop} {group entry : Nat} (hP : LeafData group entry P) {env : Env} {x : XmlElement} {st : Reader}
    (h : P st) : P ((readCompressedBinary env x st).2) := by
  unfold readCompressedBinary
  repeat' (first
    | assumption
    | with_reducible apply stable_ite
    | with_reducible apply stable_ite_snd
    | exact fun _ => rfl
    | with_reducible apply hP.updGroup
    | with_reducible apply hP.updEntry
    | with_reducible apply hP.raiseError
    | with_reducible apply hP.setMeta
    | with_reducible apply hP.randomUuid
    | with_reducible apply hP.cipherProcess
    | with_reducible apply hP.setNullDeref
    | with_reducible apply hP.setXmlError
    | with_reducible apply hP.setHeaderHash
    | with_reducible apply hP.setBinaryPool
    | with_reducible apply hP.addDeletedObject
    | with_reducible apply readBinary_at hP
    | refine snd_of_eq (by assumption) (readBinary_at hP ?_)
    | refine snd_of_eq (by assumption) (hP.cipherProcess _ _ _ _ ?_)
    | refine snd_of_eq (by assumption) (hP.randomUuid _ _ ?_)
    | dsimp only
    | split)

theorem readDateTime_at {P : Reader → Prop} {group entry : Nat} (hP : LeafData group entry P) {env : Env} {x : XmlElement} {st : Reader}
    (h : P st) : P ((readDateTime env x st).2) := by
  unfold readDateTime
  repeat' (first
    | assumption
    | with_reducible apply stable_ite
    | with_reducible apply stable_ite_snd
    | exact fun _ => rfl
    | with_reducible apply hP.updGroup
    | with_reducible apply hP.updEntry
    | with_reducible apply hP.raiseError
    | with_reducible apply hP.setMeta
    | with_reducible apply hP.randomUuid
    | with_reducible apply hP.cipherProcess
    | with_reducible apply hP.setNullDeref
    | with_reducible apply hP.setXmlError
    | with_reducible apply hP.setHeaderHash
    | with_reducible apply hP.setBinaryPool
    | with_reducible apply hP.addDeletedObject
    | with_reducible apply readString_at hP
    | refine snd_of_eq (by assumption) (readString_at hP ?_)
    | refine snd_of_eq (by assumption) (hP.cipherProcess _ _ _ _ ?_)
    | refine snd_of_eq (by assumption) (hP.randomUuid _ _ ?_)
    | dsimp only
    | split)

theorem readColor_at {P : Reader → Prop} {group entry : Nat} (hP : LeafData group entry P) {env : Env} {x : XmlElement} {st : Reader}
    (h : P st) : P ((readColor env x st).2) := by
  unfold readColor
  repeat' (first
    | assumption
    | with_reducible apply stable_ite
    | with_reducible apply stable_ite_snd
    | exact fun _ => rfl
    | with_reducible apply hP.updGroup
    | with_reducible apply hP.updEntry
    | with_reducible apply hP.raiseError
    | with_reducible apply hP.setMeta
    | with_reducible apply hP.randomUuid
    | with_reducible apply hP.cipherProcess
    | with_reducible apply hP.setNullDeref
    | with_reducible apply hP.setXmlError
    | with_reducible apply hP.setHeaderHash
    | with_reducible apply hP.setBinaryPool
    | with_reducible apply hP.addDeletedObject
    | with_reducible apply readString_at hP
    | refine snd_of_eq (by assumption) (readString_at hP ?_)
    | refine snd_of_eq (by assumption) (hP.cipherProcess _ _ _ _ ?_)
    | refine snd_of_eq (by assumption) (hP.randomUuid _ _ ?_)
    | dsimp only
    | split)

theorem parseMemoryProtectionChild_at {P : Reader → Prop} {group entry : Nat} (hP : LeafData group entry P) {c : XmlElement} {s : Unit × Reader}
    (h : P s.2) : P ((parseMemoryProtectionChild c s).2) := by
  unfold parseMemoryProtectionChild
  repeat' (first
    | assumption
    | with_reducible apply stable_ite
    | with_reducible apply stable_ite_snd
    | exact fun _ => rfl
    | with_reducible apply hP.updGroup
    | with_reducible apply hP.updEntry
    | with_reducible apply hP.raiseError
    | with_reducible apply hP.setMeta
    | with_reducible apply hP.randomUuid
    | with_reducible apply hP.cipherProcess
    | with_reducible apply hP.setNullDeref
    | with_reducible apply hP.setXmlError
    | with_reducible apply hP.setHeaderHash
    | with_reducible apply hP.setBinaryPool
    | with_reducible apply hP.addDeletedObject
    | with_reducible apply readBool_at hP
    | refine snd_of_eq (by assumption) (readBool_at hP ?_)
    | refine snd_of_eq (by assumption) (hP.cipherProcess _ _ _ _ ?_)
    | refine snd_of_eq (by assumption) (hP.randomUuid _ _ ?_)
    | dsimp only
    | split)

theorem parseMemoryProtection_at {P : Reader → Prop} {group entry : Nat} (hP : LeafData group entry P) {x : XmlElement} {st : Reader}
    (h : P st) : P (parseMemoryProtection x st) := by
  unfold parseMemoryProtection
  repeat' (first
    | assumption
    | with_reducible apply stable_ite
    | with_reducible apply stable_ite_snd
    | exact forEachChild_stable (fun _ _ hs => parseMemoryProtectionChild_at hP hs) h
    | exact snd_of_eq (by assumption) (forEachChild_stable (fun _ _ hs => parseMemoryProtectionChild_at hP hs) h)
    | exact fun _ => rfl
    | with_reducible apply hP.updGroup
    | with_reducible apply hP.updEntry
    | with_reducible apply hP.raiseError
    | with_reducible apply hP.setMeta
    | with_reducible apply hP.randomUuid
    | with_reducible apply hP.cipherProcess
    | with_reducible apply hP.setNullDeref
    | with_reducible apply hP.setXmlError
    | with_reducible apply hP.setHeaderHash
    | with_reducible apply hP.setBinaryPool
    | with_reducible apply hP.addDeletedObject
    | refine snd_of_eq (by assumption) (hP.cipherProcess _ _ _ _ ?_)
    | refine snd_of_eq (by assumption) (hP.randomUuid _ _ ?_)
    | dsimp only
    | split)

theorem parseIconChild_at {P : Reader → Prop} {group entry : Nat} (hP : LeafData group entry P) {env : Env} {c : XmlElement} {s : IconLocals × Reader}
    (h : P s.2) : P ((parseIconChild env c s).2) := by
  unfold parseIconChild
  repeat' (first
    | assumption
    | with_reducible apply stable_ite
    | with_reducible apply stable_ite_snd
    | exact fun _ => rfl
    | with_reducible apply hP.updGroup
    | with_reducible apply hP.updEntry
    | with_reducible apply hP.raiseError
    | with_reducible apply hP.setMeta
    | with_reducible apply hP.randomUuid
    | with_reducible apply hP.cipherProcess
    | with_reducible apply hP.setNullDeref
    | with_reducible apply hP.setXmlError
    | with_reducible apply hP.setHeaderHash
    | with_reducible apply hP.setBinaryPool
    | with_reducible apply hP.addDeletedObject
    | with_reducible apply readUuid_at hP
    | refine snd_of_eq (by assumption) (readUuid_at hP ?_)
    | with_reducible apply readBinary_at hP
    | refine snd_of_eq (by assumption) (readBinary_at hP ?_)
    | refine snd_of_eq (by assumption) (hP.cipherProcess _ _ _ _ ?_)
    | refine snd_of_eq (by assumption) (hP.randomUuid _ _ ?_)
    | dsimp only
    | split)

theorem parseIcon_at {P : Reader → Prop} {group entry : Nat} (hP : LeafData group entry P) {env : Env} {x : XmlElement} {st : Reader}
    (h : P st) : P (parseIcon env x st) := by
  unfold parseIcon
  repeat' (first
    | assumption
    | with_reducible apply stable_ite
    | with_reducible apply stable_ite_snd
    | exact forEachChild_stable (fun _ _ hs => parseIconChild_at hP hs) h
    | exact snd_of_eq (by assumption) (forEachChild_stable (fun _ _ hs => parseIconChild_at hP hs) h)
    | exact fun _ => rfl
    | with_reducible apply hP.updGroup
    | with_reducible apply hP.updEntry
    | with_reducible apply hP.raiseError
    | with_reducible apply hP.setMeta
    | with_reducible apply hP.randomUuid
    | with_reducible apply hP.cipherProcess
    | with_reducible apply hP.setNullDeref
    | with_reducible apply hP.setXmlError
    | with_reducible apply hP.setHeaderHash
    | with_reducible apply hP.setBinaryPool
    | with_reducible apply hP.addDeletedObject
    | refine snd_of_eq (by assumption) (hP.cipherProcess _ _ _ _ ?_)
    | refine snd_of_eq (by assumption) (hP.randomUuid _ _ ?_)
    | dsimp only
    | split)

theorem parseCustomIconsChild_at {P : Reader → Prop} {group entry : Nat} (hP : LeafData group entry P) {env : Env} {c : XmlElement} {s : Unit × Reader}
    (h : P s.2) : P ((parseCustomIconsChild env c s).2) := by
  unfold parseCustomIconsChild
  repeat' (first
    | assumption
    | with_reducible apply stable_ite
    | with_reducible apply stable_ite_snd
    | exact fun _ => rfl
    | with_reducible apply hP.updGroup
    | with_reducible apply hP.updEntry
    | with_reducible apply hP.raiseError
    | with_reducible apply hP.setMeta
    | with_reducible apply hP.randomUuid
    | with_reducible apply hP.cipherProcess
    | with_reducible apply hP.setNullDeref
    | with_reducible apply hP.setXmlError
    | with_reducible apply hP.setHeaderHash
    | with_reducible apply hP.setBinaryPool
    | with_reducible apply hP.addDeletedObject
    | with_reducible apply parseIcon_at hP
    | refine snd_of_eq (by assumption) (parseIcon_at hP ?_)
    | refine snd_of_eq (by assumption) (hP.cipherProcess _ _ _ _ ?_)
    | refine snd_of_eq (by assumption) (hP.randomUuid _ _ ?_)
    | dsimp only
    | split)

theorem parseCustomIcons_at {P : Reader → Prop} {group entry : Nat} (hP : LeafData group entry P) {env : Env} {x : XmlElement} {st : Reader}
    (h : P st) : P (parseCustomIcons env x st) := by
  unfold parseCustomIcons
  repeat' (first
    | assumption
    | with_reducible apply stable_ite
    | with_reducible apply stable_ite_snd
    | exact forEachChild_stable (fun _ _ hs => parseCustomIconsChild_at hP hs) h
    | exact snd_of_eq (by assumption) (forEachChild_stable (fun _ _ hs => parseCustomIconsChild_at hP hs) h)
    | exact fun _ => rfl
    | with_reducible apply hP.updGroup
    | with_reducible apply hP.updEntry
    | with_reducible apply hP.raiseError
    | with_reducible apply hP.setMeta
    | with_reducible apply hP.randomUuid
    | with_reducible apply hP.cipherProcess
    | with_reducible apply hP.setNullDeref
    | with_reducible apply hP.setXmlError
    | with_reducible apply hP.setHeaderHash
    | with_reducible apply hP.setBinaryPool
    | with_reducible apply hP.addDeletedObject
    | refine snd_of_eq (by assumption) (hP.cipherProcess _ _ _ _ ?_)
    | refine snd_of_eq (by assumption) (hP.randomUuid _ _ ?_)
    | dsimp only
    | split)

theorem parseBinariesChild_at {P : Reader → Prop} {group entry : Nat} (hP : LeafData group entry P) {env : Env} {c : XmlElement} {s : Unit × Reader}
    (h : P s.2) : P ((parseBinariesChild env c s).2) := by
  unfold parseBinariesChild
  repeat' (first
    | assumption
    | with_reducible apply stable_ite
    | with_reducible apply stable_ite_snd
    | exact fun _ => rfl
    | with_reducible apply hP.updGroup
    | with_reducible apply hP.updEntry
    | with_reducible apply hP.raiseError
    | with_reducible apply hP.setMeta
    | with_reducible apply hP.randomUuid
    | with_reducible apply hP.cipherProcess
    | with_reducible apply hP.setNullDeref
    | with_reducible apply hP.setXmlError
    | with_reducible apply hP.setHeaderHash
    | with_reducible apply hP.setBinaryPool
    | with_reducible apply hP.addDeletedObject
    | with_reducible apply readCompressedBinary_at hP
    | refine snd_of_eq (by assumption) (readCompressedBinary_at hP ?_)
    | with_reducible apply readBinary_at hP
    | refine snd_of_eq (by assumption) (readBinary_at hP ?_)
    | refine snd_of_eq (by assumption) (hP.cipherProcess _ _ _ _ ?_)
    | refine snd_of_eq (by assumption) (hP.randomUuid _ _ ?_)
    | dsimp only
    | split)

theorem parseBinaries_at {P : Reader → Prop} {group entry : Nat} (hP : LeafData group entry P) {env : Env} {x : XmlElement} {st : Reader}
    (h : P st) : P (parseBinaries env x st) := by
  unfold parseBinaries
  repeat' (first
    | assumption
    | with_reducible apply stable_ite
    | with_reducible apply stable_ite_snd
    | exact forEachChild_stable (fun _ _ hs => parseBinariesChild_at hP hs) h
    | exact snd_of_eq (by assumption) (forEachChild_stable (fun _ _ hs => parseBinariesChild_at hP hs) h)
    | exact fun _ => rfl
    | with_reducible apply hP.updGroup
    | with_reducible apply hP.updEntry
    | with_reducible apply hP.raiseError
    | with_reducible apply hP.setMeta
    | with_reducible apply hP.randomUuid
    | with_reducible apply hP.cipherProcess
    | with_reducible apply hP.setNullDeref
    | with_reducible apply hP.setXmlError
    | with_reducible apply hP.setHeaderHash
    | with_reducible apply hP.setBinaryPool
    | with_reducible apply hP.addDeletedObject
    | refine snd_of_eq (by assumption) (hP.cipherProcess _ _ _ _ ?_)
    | refine snd_of_eq (by assumption) (hP.randomUuid _ _ ?_)
    | dsimp only
    | split)

theorem parseCustomDataItemChild_at {P : Reader → Prop} {group entry : Nat} (hP : LeafData group entry P) {c : XmlElement} {s : ItemLocals × Reader}
    (h : P s.2) : P ((parseCustomDataItemChild c s).2) := by
  unfold parseCustomDataItemChild
  repeat' (first
    | assumption
    | with_reducible apply stable_ite
    | with_reducible apply stable_ite_snd
    | exact fun _ => rfl
    | with_reducible apply hP.updGroup
    | with_reducible apply hP.updEntry
    | with_reducible apply hP.raiseError
    | with_reducible apply hP.setMeta
    | with_reducible apply hP.randomUuid
    | with_reducible apply hP.cipherProcess
    | with_reducible apply hP.setNullDeref
    | with_reducible apply hP.setXmlError
    | with_reducible apply hP.setHeaderHash
    | with_reducible apply hP.setBinaryPool
    | with_reducible apply hP.addDeletedObject
    | with_reducible apply readString_at hP
    | refine snd_of_eq (by assumption) (readString_at hP ?_)
    | refine snd_of_eq (by assumption) (hP.cipherProcess _ _ _ _ ?_)
    | refine snd_of_eq (by assumption) (hP.randomUuid _ _ ?_)
    | dsimp only
    | split)

theorem parseCustomDataItem_at {P : Reader → Prop} {group entry : Nat} (hP : LeafData group entry P) {x : XmlElement} {st : Reader}
    (h : P st) : P (parseCustomDataItem x st) := by
  unfold parseCustomDataItem
  repeat' (first
    | assumption
    | with_reducible apply stable_ite
    | with_reducible apply stable_ite_snd
    | exact forEachChild_stable (fun _ _ hs => parseCustomDataItemChild_at hP hs) h
    | exact snd_of_eq (by assumption) (forEachChild_stable (fun _ _ hs => parseCustomDataItemChild_at hP hs) h)
    | exact fun _ => rfl
    | with_reducible apply hP.updGroup
    | with_reducible apply hP.updEntry
    | with_reducible apply hP.raiseError
    | with_reducible apply hP.setMeta
    | with_reducible apply hP.randomUuid
    | with_reducible apply hP.cipherProcess
    | with_reducible apply hP.setNullDeref
    | with_reducible apply hP.setXmlError
    | with_reducible apply hP.setHeaderHash
    | with_reducible apply hP.setBinaryPool
    | with_reducible apply hP.addDeletedObject
    | refine snd_of_eq (by assumption) (hP.cipherProcess _ _ _ _ ?_)
    | refine snd_of_eq (by assumption) (hP.randomUuid _ _ ?_)
    | dsimp only
    | split)

theorem parseCustomDataChild_at {P : Reader → Prop} {group entry : Nat} (hP : LeafData group entry P) {c : XmlElement} {s : Unit × Reader}
    (h : P s.2) : P ((parseCustomDataChild c s).2) := by
  unfold parseCustomDataChild
  repeat' (first
    | assumption
    | with_reducible apply stable_ite
    | with_reducible apply stable_ite_snd
    | exact fun _ => rfl
    | with_reducible apply hP.updGroup
    | with_reducible apply hP.updEntry
    | with_reducible apply hP.raiseError
    | with_reducible apply hP.setMeta
    | with_reducible apply hP.randomUuid
    | with_reducible apply hP.cipherProcess
    | with_reducible apply hP.setNullDeref
    | with_reducible apply hP.setXmlError
    | with_reducible apply hP.setHeaderHash
    | with_reducible apply hP.setBinaryPool
    | with_reducible apply hP.addDeletedObject
    | with_reducible apply parseCustomDataItem_at hP
    | refine snd_of_eq (by assumption) (parseCustomDataItem_at hP ?_)
    | refine snd_of_eq (by assumption) (hP.cipherProcess _ _ _ _ ?_)
    | refine snd_of_eq (by assumption) (hP.randomUuid _ _ ?_)
    | dsimp only
    | split)

theorem parseCustomData_at {P : Reader → Prop} {group entry : Nat} (hP : LeafData group entry P) {x : XmlElement} {st : Reader}
    (h : P st) : P (parseCustomData x st) := by
  unfold parseCustomData
  repeat' (first
    | assumption
    | with_reducible apply stable_ite
    | with_reducible apply stable_ite_snd
    | exact forEachChild_stable (fun _ _ hs => parseCustomDataChild_at hP hs) h
    | exact snd_of_eq (by assumption) (forEachChild_stable (fun _ _ hs => parseCustomDataChild_at hP hs) h)
    | exact fun _ => rfl
    | with_reducible apply hP.updGroup
    | with_reducible apply hP.updEntry
    | with_reducible apply hP.raiseError
    | with_reducible apply hP.setMeta
    | with_reducible apply hP.randomUuid
    | with_reducible apply hP.cipherProcess
    | with_reducible apply hP.setNullDeref
    | with_reducible apply hP.setXmlError
    | with_reducible apply hP.setHeaderHash
    | with_reducible apply hP.setBinaryPool
    | with_reducible apply hP.addDeletedObject
    | refine snd_of_eq (by assumption) (hP.cipherProcess _ _ _ _ ?_)
    | refine snd_of_eq (by assumption) (hP.randomUuid _ _ ?_)
    | dsimp only
    | split)

theorem parseMetaChild_at {P : Reader → Prop} {group entry : Nat} (hP : LeafAt group entry P) {env : Env} {c : XmlElement} {st : Reader}
    (h : P st) : P (parseMetaChild env c st) := by
  unfold parseMetaChild
  repeat' (first
    | assumption
    | with_reducible apply stable_ite
    | with_reducible apply stable_ite_snd
    | exact fun _ => rfl
    | with_reducible apply hP.toLeafData.updGroup
    | with_reducible apply hP.toLeafData.updEntry
    | with_reducible apply hP.toLeafData.raiseError
    | with_reducible apply hP.toLeafData.setMeta
    | with_reducible apply hP.toLeafData.randomUuid
    | with_reducible apply hP.toLeafData.cipherProcess
    | with_reducible apply hP.toLeafData.setNullDeref
    | with_reducible apply hP.toLeafData.setXmlError
    | with_reducible apply hP.toLeafData.setHeaderHash
    | with_reducible apply hP.toLeafData.setBinaryPool
    | with_reducible apply hP.toLeafData.addDeletedObject
    | with_reducible apply hP.getGroup
    | with_reducible apply hP.getEntry
    | with_reducible apply readString_at hP.toLeafData
    | refine snd_of_eq (by assumption) (readString_at hP.toLeafData ?_)
    | with_reducible apply readBinary_at hP.toLeafData
    | refine snd_of_eq (by assumption) (readBinary_at hP.toLeafData ?_)
    | with_reducible apply readDateTime_at hP.toLeafData
    | refine snd_of_eq (by assumption) (readDateTime_at hP.toLeafData ?_)
    | with_reducible apply readNumber_at hP.toLeafData
    | refine snd_of_eq (by assumption) (readNumber_at hP.toLeafData ?_)
    | with_reducible apply readColor_at hP.toLeafData
    | refine snd_of_eq (by assumption) (readColor_at hP.toLeafData ?_)
    | with_reducible apply readBool_at hP.toLeafData
    | refine snd_of_eq (by assumption) (readBool_at hP.toLeafData ?_)
    | with_reducible apply readUuid_at hP.toLeafData
    | refine snd_of_eq (by assumption) (readUuid_at hP.toLeafData ?_)
    | with_reducible apply parseMemoryProtection_at hP.toLeafData
    | refine snd_of_eq (by assumption) (parseMemoryProtection_at hP.toLeafData ?_)
    | with_reducible apply parseCustomIcons_at hP.toLeafData
    | refine snd_of_eq (by assumption) (parseCustomIcons_at hP.toLeafData ?_)
    | with_reducible apply parseBinaries_at hP.toLeafData
    | refine snd_of_eq (by assumption) (parseBinaries_at hP.toLeafData ?_)
    | with_reducible apply parseCustomData_at hP.toLeafData
    | refine snd_of_eq (by assumption) (parseCustomData_at hP.toLeafData ?_)
    | refine snd_of_eq (by assumption) (hP.getGroup _ _ ?_)
    | refine snd_of_eq (by assumption) (hP.getEntry _ _ ?_)
    | refine snd_of_eq (by assumption) (hP.toLeafData.cipherProcess _ _ _ _ ?_)
    | refine snd_of_eq (by assumption) (hP.toLeafData.randomUuid _ _ ?_)
    | dsimp only
    | split)

theorem parseMeta_at {P : Reader → Prop} {group entry : Nat} (hP : LeafAt group entry P)
    {env : Env} {x : XmlElement} {st : Reader} (h : P st) : P (parseMeta env x st) := by
  unfold parseMeta
  exact forEachChild_stable (fun _ _ hs => parseMetaChild_at hP hs) h

theorem parseTimesChild_at {P : Reader → Prop} {group entry : Nat} (hP : LeafData group entry P) {env : Env} {c : XmlElement} {s : TimeInfo × Reader}
    (h : P s.2) : P ((parseTimesChild env c s).2) := by
  unfold parseTimesChild
  repeat' (first
    | assumption
    | with_reducible apply stable_ite
    | with_reducible apply stable_ite_snd
    | exact fun _ => rfl
    | with_reducible apply hP.updGroup
    | with_reducible apply hP.updEntry
    | with_reducible apply hP.raiseError
    | with_reducible apply hP.setMeta
    | with_reducible apply hP.randomUuid
    | with_reducible apply hP.cipherProcess
    | with_reducible apply hP.setNullDeref
    | with_reducible apply hP.setXmlError
    | with_reducible apply hP.setHeaderHash
    | with_reducible apply hP.setBinaryPool
    | with_reducible apply hP.addDeletedObject
    | with_reducible apply readDateTime_at hP
    | refine snd_of_eq (by assumption) (readDateTime_at hP ?_)
    | with_reducible apply readBool_at hP
    | refine snd_of_eq (by assumption) (readBool_at hP ?_)
    | with_reducible apply readNumber_at hP
    | refine snd_of_eq (by assumption) (readNumber_at hP ?_)
    | refine snd_of_eq (by assumption) (hP.cipherProcess _ _ _ _ ?_)
    | refine snd_of_eq (by assumption) (hP.randomUuid _ _ ?_)
    | dsimp only
    | split)

theorem parseTimes_at {P : Reader → Prop} {group entry : Nat} (hP : LeafData group entry P) {env : Env} {x : XmlElement} {st : Reader}
    (h : P st) : P ((parseTimes env x st).2) := by
  unfold parseTimes
  repeat' (first
    | assumption
    | with_reducible apply stable_ite
    | with_reducible apply stable_ite_snd
    | exact forEachChild_stable (fun _ _ hs => parseTimesChild_at hP hs) h
    | exact snd_of_eq (by assumption) (forEachChild_stable (fun _ _ hs => parseTimesChild_at hP hs) h)
    | exact fun _ => rfl
    | with_reducible apply hP.updGroup
    | with_reducible apply hP.updEntry
    | with_reducible apply hP.raiseError
    | with_reducible apply hP.setMeta
    | with_reducible apply hP.randomUuid
    | with_reducible apply hP.cipherProcess
    | with_reducible apply hP.setNullDeref
    | with_reducible apply hP.setXmlError
    | with_reducible apply hP.setHeaderHash
    | with_reducible apply hP.setBinaryPool
    | with_reducible apply hP.addDeletedObject
    | refine snd_of_eq (by assumption) (hP.cipherProcess _ _ _ _ ?_)
    | refine snd_of_eq (by assumption) (hP.randomUuid _ _ ?_)
    | dsimp only
    | split)

theorem parseDeletedObjectChild_at {P : Reader → Prop} {group entry : Nat} (hP : LeafData group entry P) {env : Env} {c : XmlElement} {s : DeletedObject × Reader}
    (h : P s.2) : P ((parseDeletedObjectChild env c s).2) := by
  unfold parseDeletedObjectChild
  repeat' (first
    | assumption
    | with_reducible apply stable_ite
    | with_reducible apply stable_ite_snd
    | exact fun _ => rfl
    | with_reducible apply hP.updGroup
    | with_reducible apply hP.updEntry
    | with_reducible apply hP.raiseError
    | with_reducible apply hP.setMeta
    | with_reducible apply hP.randomUuid
    | with_reducible apply hP.cipherProcess
    | with_reducible apply hP.setNullDeref
    | with_reducible apply hP.setXmlError
    | with_reducible apply hP.setHeaderHash
    | with_reducible apply hP.setBinaryPool
    | with_reducible apply hP.addDeletedObject
    | with_reducible apply readUuid_at hP
    | refine snd_of_eq (by assumption) (readUuid_at hP ?_)
    | with_reducible apply readDateTime_at hP
    | refine snd_of_eq (by assumption) (readDateTime_at hP ?_)
    | refine snd_of_eq (by assumption) (hP.cipherProcess _ _ _ _ ?_)
    | refine snd_of_eq (by assumption) (hP.randomUuid _ _ ?_)
    | dsimp only
    | split)

theorem parseDeletedObject_at {P : Reader → Prop} {group entry : Nat} (hP : LeafData group entry P) {env : Env} {x : XmlElement} {st : Reader}
    (h : P st) : P (parseDeletedObject env x st) := by
  unfold parseDeletedObject
  repeat' (first
    | assumption
    | with_reducible apply stable_ite
    | with_reducible apply stable_ite_snd
    | exact forEachChild_stable (fun _ _ hs => parseDeletedObjectChild_at hP hs) h
    | exact snd_of_eq (by assumption) (forEachChild_stable (fun _ _ hs => parseDeletedObjectChild_at hP hs) h)
    | exact fun _ => rfl
    | with_reducible apply hP.updGroup
    | with_reducible apply hP.updEntry
    | with_reducible apply hP.raiseError
    | with_reducible apply hP.setMeta
    | with_reducible apply hP.randomUuid
    | with_reducible apply hP.cipherProcess
    | with_reducible apply hP.setNullDeref
    | with_reducible apply hP.setXmlError
    | with_reducible apply hP.setHeaderHash
    | with_reducible apply hP.setBinaryPool
    | with_reducible apply hP.addDeletedObject
    | refine snd_of_eq (by assumption) (hP.cipherProcess _ _ _ _ ?_)
    | refine snd_of_eq (by assumption) (hP.randomUuid _ _ ?_)
    | dsimp only
    | split)

theorem parseDeletedObjectsChild_at {P : Reader → Prop} {group entry : Nat} (hP : LeafData group entry P) {env : Env} {c : XmlElement} {s : Unit × Reader}
    (h : P s.2) : P ((parseDeletedObjectsChild env c s).2) := by
  unfold parseDeletedObjectsChild
  repeat' (first
    | assumption
    | with_reducible apply stable_ite
    | with_reducible apply stable_ite_snd
    | exact fun _ => rfl
    | with_reducible apply hP.updGroup
    | with_reducible apply hP.updEntry
    | with_reducible apply hP.raiseError
    | with_reducible apply hP.setMeta
    | with_reducible apply hP.randomUuid
    | with_reducible apply hP.cipherProcess
    | with_reducible apply hP.setNullDeref
    | with_reducible apply hP.setXmlError
    | with_reducible apply hP.setHeaderHash
    | with_reducible apply hP.setBinaryPool
    | with_reducible apply hP.addDeletedObject
    | with_reducible apply parseDeletedObject_at hP
    | refine snd_of_eq (by assumption) (parseDeletedObject_at hP ?_)
    | refine snd_of_eq (by assumption) (hP.cipherProcess _ _ _ _ ?_)
    | refine snd_of_eq (by assumption) (hP.randomUuid _ _ ?_)
    | dsimp only
    | split)

theorem parseDeletedObjects_at {P : Reader → Prop} {group entry : Nat} (hP : LeafData group entry P) {env : Env} {x : XmlElement} {st : Reader}
    (h : P st) : P (parseDeletedObjects env x st) := by
  unfold parseDeletedObjects
  repeat' (first
    | assumption
    | with_reducible apply stable_ite
    | with_reducible apply stable_ite_snd
    | exact forEachChild_stable (fun _ _ hs => parseDeletedObjectsChild_at hP hs) h
    | exact snd_of_eq (by assumption) (forEachChild_stable (fun _ _ hs => parseDeletedObjectsChild_at hP hs) h)
    | exact fun _ => rfl
    | with_reducible apply hP.updGroup
    | with_reducible apply hP.updEntry
    | with_reducible apply hP.raiseError
    | with_reducible apply hP.setMeta
    | with_reducible apply hP.randomUuid
    | with_reducible apply hP.cipherProcess
    | with_reducible apply hP.setNullDeref
    | with_reducible apply hP.setXmlError
    | with_reducible apply hP.setHeaderHash
    | with_reducible apply hP.setBinaryPool
    | with_reducible apply hP.addDeletedObject
    | refine snd_of_eq (by assumption) (hP.cipherProcess _ _ _ _ ?_)
    | refine snd_of_eq (by assumption) (hP.randomUuid _ _ ?_)
    | dsimp only
    | split)

theorem parseEntryStringValue_at {P : Reader → Prop} {group entry : Nat} (hP : LeafData group entry P) {env : Env} {c : XmlElement} {s : StringLocals × Reader}
    (h : P s.2) : P ((parseEntryStringValue env c s).2) := by
  unfold parseEntryStringValue
  repeat' (first
    | assumption
    | with_reducible apply stable_ite
    | with_reducible apply stable_ite_snd
    | exact fun _ => rfl
    | with_reducible apply hP.updGroup
    | with_reducible apply hP.updEntry
    | with_reducible apply hP.raiseError
    | with_reducible apply hP.setMeta
    | with_reducible apply hP.randomUuid
    | with_reducible apply hP.cipherProcess
    | with_reducible apply hP.setNullDeref
    | with_reducible apply hP.setXmlError
    | with_reducible apply hP.setHeaderHash
    | with_reducible apply hP.setBinaryPool
    | with_reducible apply hP.addDeletedObject
    | with_reducible apply readString_at hP
    | refine snd_of_eq (by assumption) (readString_at hP ?_)
    | refine snd_of_eq (by assumption) (hP.cipherProcess _ _ _ _ ?_)
    | refine snd_of_eq (by assumption) (hP.randomUuid _ _ ?_)
    | dsimp only
    | split)

theorem parseEntryStringChild_at {P : Reader → Prop} {group entry : Nat} (hP : LeafData group entry P) {env : Env} {c : XmlElement} {s : StringLocals × Reader}
    (h : P s.2) : P ((parseEntryStringChild env c s).2) := by
  unfold parseEntryStringChild
  repeat' (first
    | assumption
    | with_reducible apply stable_ite
    | with_reducible apply stable_ite_snd
    | exact fun _ => rfl
    | with_reducible apply hP.updGroup
    | with_reducible apply hP.updEntry
    | with_reducible apply hP.raiseError
    | with_reducible apply hP.setMeta
    | with_reducible apply hP.randomUuid
    | with_reducible apply hP.cipherProcess
    | with_reducible apply hP.setNullDeref
    | with_reducible apply hP.setXmlError
    | with_reducible apply hP.setHeaderHash
    | with_reducible apply hP.setBinaryPool
    | with_reducible apply hP.addDeletedObject
    | with_reducible apply readString_at hP
    | refine snd_of_eq (by assumption) (readString_at hP ?_)
    | with_reducible apply parseEntryStringValue_at hP
    | refine snd_of_eq (by assumption) (parseEntryStringValue_at hP ?_)
    | refine snd_of_eq (by assumption) (hP.cipherProcess _ _ _ _ ?_)
    | refine snd_of_eq (by assumption) (hP.randomUuid _ _ ?_)
    | dsimp only
    | split)

theorem parseEntryString_at {P : Reader → Prop} {group entry : Nat} (hP : LeafData group entry P) {env : Env} {x : XmlElement} {st : Reader}
    (h : P st) : P (parseEntryString env entry x st) := by
  unfold parseEntryString
  repeat' (first
    | assumption
    | with_reducible apply stable_ite
    | with_reducible apply stable_ite_snd
    | exact forEachChild_stable (fun _ _ hs => parseEntryStringChild_at hP hs) h
    | exact snd_of_eq (by assumption) (forEachChild_stable (fun _ _ hs => parseEntryStringChild_at hP hs) h)
    | exact fun _ => rfl
    | with_reducible apply hP.updGroup
    | with_reducible apply hP.updEntry
    | with_reducible apply hP.raiseError
    | with_reducible apply hP.setMeta
    | with_reducible apply hP.randomUuid
    | with_reducible apply hP.cipherProcess
    | with_reducible apply hP.setNullDeref
    | with_reducible apply hP.setXmlError
    | with_reducible apply hP.setHeaderHash
    | with_reducible apply hP.setBinaryPool
    | with_reducible apply hP.addDeletedObject
    | refine snd_of_eq (by assumption) (hP.cipherProcess _ _ _ _ ?_)
    | refine snd_of_eq (by assumption) (hP.randomUuid _ _ ?_)
    | dsimp only
    | split)

theorem parseEntryBinaryValue_at {P : Reader → Prop} {group entry : Nat} (hP : LeafData group entry P) {env : Env} {c : XmlElement} {s : BinaryLocals × Reader}
    (h : P s.2) : P ((parseEntryBinaryValue env c s).2) := by
  unfold parseEntryBinaryValue
  repeat' (first
    | assumption
    | with_reducible apply stable_ite
    | with_reducible apply stable_ite_snd
    | exact fun _ => rfl
    | with_reducible apply hP.updGroup
    | with_reducible apply hP.updEntry
    | with_reducible apply hP.raiseError
    | with_reducible apply hP.setMeta
    | with_reducible apply hP.randomUuid
    | with_reducible apply hP.cipherProcess
    | with_reducible apply hP.setNullDeref
    | with_reducible apply hP.setXmlError
    | with_reducible apply hP.setHeaderHash
    | with_reducible apply hP.setBinaryPool
    | with_reducible apply hP.addDeletedObject
    | with_reducible apply readBinary_at hP
    | refine snd_of_eq (by assumption) (readBinary_at hP ?_)
    | refine snd_of_eq (by assumption) (hP.cipherProcess _ _ _ _ ?_)
    | refine snd_of_eq (by assumption) (hP.randomUuid _ _ ?_)
    | dsimp only
    | split)

theorem parseEntryBinaryChild_at {P : Reader → Prop} {group entry : Nat} (hP : LeafData group entry P) {env : Env} {c : XmlElement} {s : BinaryLocals × Reader}
    (h : P s.2) : P ((parseEntryBinaryChild env c s).2) := by
  unfold parseEntryBinaryChild
  repeat' (first
    | assumption
    | with_reducible apply stable_ite
    | with_reducible apply stable_ite_snd
    | exact fun _ => rfl
    | with_reducible apply hP.updGroup
    | with_reducible apply hP.updEntry
    | with_reducible apply hP.raiseError
    | with_reducible apply hP.setMeta
    | with_reducible apply hP.randomUuid
    | with_reducible apply hP.cipherProcess
    | with_reducible apply hP.setNullDeref
    | with_reducible apply hP.setXmlError
    | with_reducible apply hP.setHeaderHash
    | with_reducible apply hP.setBinaryPool
    | with_reducible apply hP.addDeletedObject
    | with_reducible apply readString_at hP
    | refine snd_of_eq (by assumption) (readString_at hP ?_)
    | with_reducible apply parseEntryBinaryValue_at hP
    | refine snd_of_eq (by assumption) (parseEntryBinaryValue_at hP ?_)
    | refine snd_of_eq (by assumption) (hP.cipherProcess _ _ _ _ ?_)
    | refine snd_of_eq (by assumption) (hP.randomUuid _ _ ?_)
    | dsimp only
    | split)

theorem parseEntryBinary_at {P : Reader → Prop} {group entry : Nat} (hP : LeafData group entry P) {env : Env} {x : XmlElement} {st : Reader}
    (h : P st) : P ((parseEntryBinary env entry x st).2) := by
  unfold parseEntryBinary
  repeat' (first
    | assumption
    | with_reducible apply stable_ite
    | with_reducible apply stable_ite_snd
    | exact forEachChild_stable (fun _ _ hs => parseEntryBinaryChild_at hP hs) h
    | exact snd_of_eq (by assumption) (forEachChild_stable (fun _ _ hs => parseEntryBinaryChild_at hP hs) h)
    | exact fun _ => rfl
    | with_reducible apply hP.updGroup
    | with_reducible apply hP.updEntry
    | with_reducible apply hP.raiseError
    | with_reducible apply hP.setMeta
    | with_reducible apply hP.randomUuid
    | with_reducible apply hP.cipherProcess
    | with_reducible apply hP.setNullDeref
    | with_reducible apply hP.setXmlError
    | with_reducible apply hP.setHeaderHash
    | with_reducible apply hP.setBinaryPool
    | with_reducible apply hP.addDeletedObject
    | refine snd_of_eq (by assumption) (hP.cipherProcess _ _ _ _ ?_)
    | refine snd_of_eq (by assumption) (hP.randomUuid _ _ ?_)
    | dsimp only
    | split)

theorem parseAutoTypeAssocChild_at {P : Reader → Prop} {group entry : Nat} (hP : LeafData group entry P) {c : XmlElement} {s : AssocLocals × Reader}
    (h : P s.2) : P ((parseAutoTypeAssocChild c s).2) := by
  unfold parseAutoTypeAssocChild
  repeat' (first
    | assumption
    | with_reducible apply stable_ite
    | with_reducible apply stable_ite_snd
    | exact fun _ => rfl
    | with_reducible apply hP.updGroup
    | with_reducible apply hP.updEntry
    | with_reducible apply hP.raiseError
    | with_reducible apply hP.setMeta
    | with_reducible apply hP.randomUuid
    | with_reducible apply hP.cipherProcess
    | with_reducible apply hP.setNullDeref
    | with_reducible apply hP.setXmlError
    | with_reducible apply hP.setHeaderHash
    | with_reducible apply hP.setBinaryPool
    | with_reducible apply hP.addDeletedObject
    | with_reducible apply readString_at hP
    | refine snd_of_eq (by assumption) (readString_at hP ?_)
    | refine snd_of_eq (by assumption) (hP.cipherProcess _ _ _ _ ?_)
    | refine snd_of_eq (by assumption) (hP.randomUuid _ _ ?_)
    | dsimp only
    | split)

theorem parseAutoTypeAssoc_at {P : Reader → Prop} {group entry : Nat} (hP : LeafData group entry P) {x : XmlElement} {st : Reader}
    (h : P st) : P (parseAutoTypeAssoc entry x st) := by
  unfold parseAutoTypeAssoc
  repeat' (first
    | assumption
    | with_reducible apply stable_ite
    | with_reducible apply stable_ite_snd
    | exact forEachChild_stable (fun _ _ hs => parseAutoTypeAssocChild_at hP hs) h
    | exact snd_of_eq (by assumption) (forEachChild_stable (fun _ _ hs => parseAutoTypeAssocChild_at hP hs) h)
    | exact fun _ => rfl
    | with_reducible apply hP.updGroup
    | with_reducible apply hP.updEntry
    | with_reducible apply hP.raiseError
    | with_reducible apply hP.setMeta
    | with_reducible apply hP.randomUuid
    | with_reducible apply hP.cipherProcess
    | with_reducible apply hP.setNullDeref
    | with_reducible apply hP.setXmlError
    | with_reducible apply hP.setHeaderHash
    | with_reducible apply hP.setBinaryPool
    | with_reducible apply hP.addDeletedObject
    | refine snd_of_eq (by assumption) (hP.cipherProcess _ _ _ _ ?_)
    | refine snd_of_eq (by assumption) (hP.randomUuid _ _ ?_)
    | dsimp only
    | split)

theorem parseAutoTypeChild_at {P : Reader → Prop} {group entry : Nat} (hP : LeafData group entry P) {env : Env} {c : XmlElement} {s : Unit × Reader}
    (h : P s.2) : P ((parseAutoTypeChild env entry c s).2) := by
  unfold parseAutoTypeChild
  repeat' (first
    | assumption
    | with_reducible apply stable_ite
    | with_reducible apply stable_ite_snd
    | exact fun _ => rfl
    | with_reducible apply hP.updGroup
    | with_reducible apply hP.updEntry
    | with_reducible apply hP.raiseError
    | with_reducible apply hP.setMeta
    | with_reducible apply hP.randomUuid
    | with_reducible apply hP.cipherProcess
    | with_reducible apply hP.setNullDeref
    | with_reducible apply hP.setXmlError
    | with_reducible apply hP.setHeaderHash
    | with_reducible apply hP.setBinaryPool
    | with_reducible apply hP.addDeletedObject
    | with_reducible apply readBool_at hP
    | refine snd_of_eq (by assumption) (readBool_at hP ?_)
    | with_reducible apply readNumber_at hP
    | refine snd_of_eq (by assumption) (readNumber_at hP ?_)
    | with_reducible apply readString_at hP
    | refine snd_of_eq (by assumption) (readString_at hP ?_)
    | with_reducible apply parseAutoTypeAssoc_at hP
    | refine snd_of_eq (by assumption) (parseAutoTypeAssoc_at hP ?_)
    | refine snd_of_eq (by assumption) (hP.cipherProcess _ _ _ _ ?_)
    | refine snd_of_eq (by assumption) (hP.randomUuid _ _ ?_)
    | dsimp only
    | split)

theorem parseAutoType_at {P : Reader → Prop} {group entry : Nat} (hP : LeafData group entry P) {env : Env} {x : XmlElement} {st : Reader}
    (h : P st) : P (parseAutoType env entry x st) := by
  unfold parseAutoType
  repeat' (first
    | assumption
    | with_reducible apply stable_ite
    | with_reducible apply stable_ite_snd
    | exact forEachChild_stable (fun _ _ hs => parseAutoTypeChild_at hP hs) h
    | exact snd_of_eq (by assumption) (forEachChild_stable (fun _ _ hs => parseAutoTypeChild_at hP hs) h)
    | exact fun _ => rfl
    | with_reducible apply hP.updGroup
    | with_reducible apply hP.updEntry
    | with_reducible apply hP.raiseError
    | with_reducible apply hP.setMeta
    | with_reducible apply hP.randomUuid
    | with_reducible apply hP.cipherProcess
    | with_reducible apply hP.setNullDeref
    | with_reducible apply hP.setXmlError
    | with_reducible apply hP.setHeaderHash
    | with_reducible apply hP.setBinaryPool
    | with_reducible apply hP.addDeletedObject
    | refine snd_of_eq (by assumption) (hP.cipherProcess _ _ _ _ ?_)
    | refine snd_of_eq (by assumption) (hP.randomUuid _ _ ?_)
    | dsimp only
    | split)

theorem parseGroupField_at {P : Reader → Prop} {group entry : Nat} (hP : LeafAt group entry P) {env : Env} {c : XmlElement} {st : Reader}
    (hU : c.name = "UUID" → ∀ (s : Reader) (u : Uuid), P s →
      P (s.updGroup group (fun g => { g with m_uuid := u })))
    (h : P st) : P (parseGroupField env group c st) := by
  unfold parseGroupField
  by_cases hn : c.name = "UUID"
  · have hV := hU hn
    rw [if_pos hn]
    repeat' (first
      | assumption
      | with_reducible apply stable_ite
      | with_reducible apply stable_ite_snd
      | with_reducible apply hV
      | exact fun _ => rfl
      | with_reducible apply hP.toLeafData.updGroup
      | with_reducible apply hP.toLeafData.updEntry
      | with_reducible apply hP.toLeafData.raiseError
      | with_reducible apply hP.toLeafData.setMeta
      | with_reducible apply hP.toLeafData.randomUuid
      | with_reducible apply hP.toLeafData.cipherProcess
      | with_reducible apply hP.toLeafData.setNullDeref
      | with_reducible apply hP.toLeafData.setXmlError
      | with_reducible apply hP.toLeafData.setHeaderHash
      | with_reducible apply hP.toLeafData.setBinaryPool
      | with_reducible apply hP.toLeafData.addDeletedObject
      | with_reducible apply hP.getGroup
      | with_reducible apply hP.getEntry
      | with_reducible apply readUuid_at hP.toLeafData
      | refine snd_of_eq (by assumption) (readUuid_at hP.toLeafData ?_)
      | with_reducible apply readString_at hP.toLeafData
      | refine snd_of_eq (by assumption) (readString_at hP.toLeafData ?_)
      | with_reducible apply readNumber_at hP.toLeafData
      | refine snd_of_eq (by assumption) (readNumber_at hP.toLeafData ?_)
      | with_reducible apply parseTimes_at hP.toLeafData
      | refine snd_of_eq (by assumption) (parseTimes_at hP.toLeafData ?_)
      | with_reducible apply readBool_at hP.toLeafData
      | refine snd_of_eq (by assumption) (readBool_at hP.toLeafData ?_)
      | refine snd_of_eq (by assumption) (hP.getGroup _ _ ?_)
      | refine snd_of_eq (by assumption) (hP.getEntry _ _ ?_)
      | refine snd_of_eq (by assumption) (hP.toLeafData.cipherProcess _ _ _ _ ?_)
      | refine snd_of_eq (by assumption) (hP.toLeafData.randomUuid _ _ ?_)
      | dsimp only
      | split)
  · rw [if_neg hn]
    repeat' (first
      | assumption
      | with_reducible apply stable_ite
      | with_reducible apply stable_ite_snd
      | exact fun _ => rfl
      | with_reducible apply hP.toLeafData.updGroup
      | with_reducible apply hP.toLeafData.updEntry
      | with_reducible apply hP.toLeafData.raiseError
      | with_reducible apply hP.toLeafData.setMeta
      | with_reducible apply hP.toLeafData.randomUuid
      | with_reducible apply hP.toLeafData.cipherProcess
      | with_reducible apply hP.toLeafData.setNullDeref
      | with_reducible apply hP.toLeafData.setXmlError
      | with_reducible apply hP.toLeafData.setHeaderHash
      | with_reducible apply hP.toLeafData.setBinaryPool
      | with_reducible apply hP.toLeafData.addDeletedObject
      | with_reducible apply hP.getGroup
      | with_reducible apply hP.getEntry
      | with_reducible apply readUuid_at hP.toLeafData
      | refine snd_of_eq (by assumption) (readUuid_at hP.toLeafData ?_)
      | with_reducible apply readString_at hP.toLeafData
      | refine snd_of_eq (by assumption) (readString_at hP.toLeafData ?_)
      | with_reducible apply readNumber_at hP.toLeafData
      | refine snd_of_eq (by assumption) (readNumber_at hP.toLeafData ?_)
      | with_reducible apply parseTimes_at hP.toLeafData
      | refine snd_of_eq (by assumption) (parseTimes_at hP.toLeafData ?_)
      | with_reducible apply readBool_at hP.toLeafData
      | refine snd_of_eq (by assumption) (readBool_at hP.toLeafData ?_)
      | refine snd_of_eq (by assumption) (hP.getGroup _ _ ?_)
      | refine snd_of_eq (by assumption) (hP.getEntry _ _ ?_)
      | refine snd_of_eq (by assumption) (hP.toLeafData.cipherProcess _ _ _ _ ?_)
      | refine snd_of_eq (by assumption) (hP.toLeafData.randomUuid _ _ ?_)
      | dsimp only
      | split)

theorem parseEntryField_at {P : Reader → Prop} {group entry : Nat} (hP : LeafData group entry P) {env : Env} {c : XmlElement} {s : List (String × String) × Reader}
    (hU : c.name = "UUID" → ∀ (t : Reader) (u : Uuid), P t →
      P (t.updEntry entry (fun e => { e with m_uuid := u })))
    (h : P s.2) : P ((parseEntryField env entry c s).2) := by
  unfold parseEntryField
  by_cases hn : c.name = "UUID"
  · have hV := hU hn
    rw [if_pos hn]
    repeat' (first
      | assumption
      | with_reducible apply stable_ite
      | with_reducible apply stable_ite_snd
      | with_reducible apply hV
      | exact fun _ => rfl
      | with_reducible apply hP.updGroup
      | with_reducible apply hP.updEntry
      | with_reducible apply hP.raiseError
      | with_reducible apply hP.setMeta
      | with_reducible apply hP.randomUuid
      | with_reducible apply hP.cipherProcess
      | with_reducible apply hP.setNullDeref
      | with_reducible apply hP.setXmlError
      | with_reducible apply hP.setHeaderHash
      | with_reducible apply hP.setBinaryPool
      | with_reducible apply hP.addDeletedObject
      | with_reducible apply readUuid_at hP
      | refine snd_of_eq (by assumption) (readUuid_at hP ?_)
      | with_reducible apply readString_at hP
      | refine snd_of_eq (by assumption) (readString_at hP ?_)
      | with_reducible apply readNumber_at hP
      | refine snd_of_eq (by assumption) (readNumber_at hP ?_)
      | with_reducible apply readColor_at hP
      | refine snd_of_eq (by assumption) (readColor_at hP ?_)
      | with_reducible apply parseTimes_at hP
      | refine snd_of_eq (by assumption) (parseTimes_at hP ?_)
      | with_reducible apply parseEntryString_at hP
      | refine snd_of_eq (by assumption) (parseEntryString_at hP ?_)
      | with_reducible apply parseEntryBinary_at hP
      | refine snd_of_eq (by assumption) (parseEntryBinary_at hP ?_)
      | with_reducible apply parseAutoType_at hP
      | refine snd_of_eq (by assumption) (parseAutoType_at hP ?_)
      | refine snd_of_eq (by assumption) (hP.cipherProcess _ _ _ _ ?_)
      | refine snd_of_eq (by assumption) (hP.randomUuid _ _ ?_)
      | dsimp only
      | split)
  · rw [if_neg hn]
    repeat' (first
      | assumption
      | with_reducible apply stable_ite
      | with_reducible apply stable_ite_snd
      | exact fun _ => rfl
      | with_reducible apply hP.updGroup
      | with_reducible apply hP.updEntry
      | with_reducible apply hP.raiseError
      | with_reducible apply hP.setMeta
      | with_reducible apply hP.randomUuid
      | with_reducible apply hP.cipherProcess
      | with_reducible apply hP.setNullDeref
      | with_reducible apply hP.setXmlError
      | with_reducible apply hP.setHeaderHash
      | with_reducible apply hP.setBinaryPool
      | with_reducible apply hP.addDeletedObject
      | with_reducible apply readUuid_at hP
      | refine snd_of_eq (by assumption) (readUuid_at hP ?_)
      | with_reducible apply readString_at hP
      | refine snd_of_eq (by assumption) (readString_at hP ?_)
      | with_reducible apply readNumber_at hP
      | refine snd_of_eq (by assumption) (readNumber_at hP ?_)
      | with_reducible apply readColor_at hP
      | refine snd_of_eq (by assumption) (readColor_at hP ?_)
      | with_reducible apply parseTimes_at hP
      | refine snd_of_eq (by assumption) (parseTimes_at hP ?_)
      | with_reducible apply parseEntryString_at hP
      | refine snd_of_eq (by assumption) (parseEntryString_at hP ?_)
      | with_reducible apply parseEntryBinary_at hP
      | refine snd_of_eq (by assumption) (parseEntryBinary_at hP ?_)
      | with_reducible apply parseAutoType_at hP
      | refine snd_of_eq (by assumption) (parseAutoType_at hP ?_)
      | refine snd_of_eq (by assumption) (hP.cipherProcess _ _ _ _ ?_)
      | refine snd_of_eq (by assumption) (hP.randomUuid _ _ ?_)
      | dsimp only
      | split)

/-! ### The entries while an entry is read -/

theorem entry_of_ge {st : Reader} {q : Nat} (h : st.entries.length ≤ q) :
    st.entry q = Entry.init := by
  unfold Reader.entry
  rw [List.getD_eq_getElem?_getD, List.getElem?_eq_none h]
  rfl

theorem group_of_ge {st : Reader} {q : Nat} (h : st.groups.length ≤ q) :
    st.group q = DbGroup.init := by
  unfold Reader.group
  rw [List.getD_eq_getElem?_getD, List.getElem?_eq_none h]
  rfl

theorem updGroup_of_ge {st : Reader} {p : Nat} (f : DbGroup → DbGroup)
    (h : st.groups.length ≤ p) : st.updGroup p f = st := by
  unfold Reader.updGroup
  rw [List.getElem?_eq_none h]

theorem updEntry_of_ge {st : Reader} {p : Nat} (f : Entry → Entry)
    (h : st.entries.length ≤ p) : st.updEntry p f = st := by
  unfold Reader.updEntry
  rw [List.getElem?_eq_none h]

theorem EntryFrame.same (t : Nat) (st : Reader) : EntryFrame t st st :=
  ⟨rfl, rfl, rfl, rfl, rfl, rfl, fun h => h, le_refl _, fun _ _ _ => rfl, rfl,
    fun q hq => by rw [entry_of_ge hq]; rfl⟩

/-- Two frames in a row, the second for the same entry or for one made since
the start. -/
theorem EntryFrame.chain {t t1 : Nat} {a b c : Reader} (h1 : EntryFrame t a b)
    (h2 : EntryFrame t1 b c) (ht : t1 = t ∨ a.entries.length ≤ t1) : EntryFrame t a c := by
  refine ⟨h2.groups.trans h1.groups, h2.m_groups.trans h1.m_groups,
    h2.m_entries.trans h1.m_entries, h2.strict.trans h1.strict, h2.root.trans h1.root,
    h2.tmp.trans h1.tmp, fun h => h2.err (h1.err h), le_trans h1.len h2.len, ?_, ?_, ?_⟩
  · intro q hq hne
    have hq1 : q ≠ t1 := by
      rcases ht with ht | ht
      · rw [ht]; exact hne
      · omega
    rw [h2.old q (lt_of_lt_of_le hq h1.len) hq1, h1.old q hq hne]
  · by_cases e : t1 = t
    · subst e
      rw [h2.own, h1.own]
    · by_cases hb : t < b.entries.length
      · rw [h2.old t hb (Ne.symm e), h1.own]
      · rw [(h2.new t (by omega)), ← h1.own, entry_of_ge (by omega : b.entries.length ≤ t)]
        rfl
  · intro q hq
    by_cases hb : b.entries.length ≤ q
    · exact h2.new q hb
    · by_cases e : q = t1
      · subst e
        rw [h2.own]
        exact h1.new q hq
      · rw [h2.old q (by omega) e]
        exact h1.new q hq

/-- A frame for an entry made since the start is one for any such entry. -/
theorem EntryFrame.retarget {t t1 : Nat} {a b : Reader} (h : EntryFrame t a b)
    (ht : a.entries.length ≤ t) (ht1 : a.entries.length ≤ t1) : EntryFrame t1 a b := by
  refine ⟨h.groups, h.m_groups, h.m_entries, h.strict, h.root, h.tmp, h.err, h.len, ?_, ?_, h.new⟩
  · intro q hq _
    exact h.old q hq (by omega)
  · rw [h.new t1 ht1, entry_of_ge ht1]
    rfl

theorem hasError_raiseError (st : Reader) (m : String) : (st.raiseError m).hasError = true := by
  simp [Reader.hasError, Reader.raiseError]

/-- The frame of the entry at `t` is kept by every elementary state change made
while a child element of that entry is read. -/
theorem leafData_entryFrame (t : Nat) (st0 : Reader) :
    LeafData st0.groups.length t (fun s => EntryFrame t st0 s) := by
  constructor
  · intro st m h
    exact ⟨h.groups, h.m_groups, h.m_entries, h.strict, h.root, h.tmp,
      fun _ => hasError_raiseError _ _, h.len, h.old, h.own, h.new⟩
  · intro st f _ h
    rw [updGroup_of_ge f (by rw [h.groups])]
    exact h
  · intro st f hf h
    have hid : ∀ e, (f e).m_history = e.m_history := fun e => by
      have := congrArg (fun x => x.2.1) (hf e)
      exact this
    refine ⟨by simpa using h.groups, by simpa using h.m_groups, by simpa using h.m_entries,
      by simpa using h.strict, by simpa using h.root, by simpa using h.tmp, ?_, ?_, ?_, ?_, ?_⟩
    · intro he
      have := h.err he
      simpa [Reader.hasError] using this
    · rw [Reader.updEntry_entries_length]
      exact h.len
    · intro q hq hne
      rw [entry_updEntry]
      simp only [hne, false_and, if_false]
      exact h.old q hq hne
    · rw [entry_updEntry]
      split
      · rw [hid]
        exact h.own
      · exact h.own
    · intro q hq
      rw [entry_updEntry]
      split
      · rename_i hc
        rw [hid, ← hc.1]
        exact h.new q hq
      · exact h.new q hq
  all_goals
    intros
    rename_i h
    first
    | exact ⟨h.groups, h.m_groups, h.m_entries, h.strict, h.root, h.tmp, h.err, h.len, h.old,
        h.own, h.new⟩
    | exact ⟨h.groups, h.m_groups, h.m_entries, h.strict, h.root, h.tmp,
        fun _ => by simp [Reader.hasError], h.len, h.old, h.own, h.new⟩

theorem EntryFrame.of_fields {t : Nat} {a s r : Reader} (h : EntryFrame t a s)
    (h1 : r.groups = s.groups) (h2 : r.m_groups = s.m_groups) (h3 : r.m_entries = s.m_entries)
    (h4 : r.m_strictMode = s.m_strictMode) (h5 : r.rootGroup = s.rootGroup)
    (h6 : r.m_tmpParent = s.m_tmpParent) (h7 : s.hasError = true → r.hasError = true)
    (h8 : r.entries = s.entries) : EntryFrame t a r := by
  have he : ∀ q, r.entry q = s.entry q := fun q => by unfold Reader.entry; rw [h8]
  refine ⟨h1.trans h.groups, h2.trans h.m_groups, h3.trans h.m_entries, h4.trans h.strict,
    h5.trans h.root, h6.trans h.tmp, fun e => h7 (h.err e), by rw [h8]; exact h.len, ?_, ?_, ?_⟩
  · intro q hq hne
    rw [he]
    exact h.old q hq hne
  · rw [he]
    exact h.own
  · intro q hq
    rw [he]
    exact h.new q hq

theorem EntryFrame.updEntry_own {t : Nat} {a s : Reader} (f : Entry → Entry)
    (hf : ∀ e, (f e).m_history = e.m_history) (h : EntryFrame t a s) :
    EntryFrame t a (s.updEntry t f) := by
  refine ⟨by simpa using h.groups, by simpa using h.m_groups, by simpa using h.m_entries,
    by simpa using h.strict, by simpa using h.root, by simpa using h.tmp, ?_, ?_, ?_, ?_, ?_⟩
  · intro he
    have := h.err he
    simpa [Reader.hasError] using this
  · rw [Reader.updEntry_entries_length]
    exact h.len
  · intro q hq hne
    rw [entry_updEntry]
    simp only [hne, false_and, if_false]
    exact h.old q hq hne
  · rw [entry_updEntry]
    split
    · rw [hf]
      exact h.own
    · exact h.own
  · intro q hq
    rw [entry_updEntry]
    split
    · rename_i hc
      rw [hf, ← hc.1]
      exact h.new q hq
    · exact h.new q hq

theorem readNextStartElement_frame (t : Nat) (st : Reader) :
    EntryFrame t st (readNextStartElement st).2 := by
  unfold readNextStartElement
  split
  · exact EntryFrame.same t st
  · split
    · exact (EntryFrame.same t st).of_fields rfl rfl rfl rfl rfl rfl
        (fun _ => by simp [Reader.hasError]) rfl
    · exact (EntryFrame.same t st).of_fields rfl rfl rfl rfl rfl rfl (fun h => h) rfl
    · exact (EntryFrame.same t st).of_fields rfl rfl rfl rfl rfl rfl (fun h => h) rfl

theorem endElement_frame {t : Nat} {a s : Reader} (h : EntryFrame t a s) :
    EntryFrame t a s.endElement :=
  h.of_fields rfl rfl rfl rfl rfl rfl (fun h => h) rfl

theorem entry_newEntry (st : Reader) (q : Nat) :
    st.newEntry.2.entry q = st.entry q := by
  unfold Reader.newEntry Reader.entry
  simp only [List.getD_eq_getElem?_getD]
  by_cases hq : q < st.entries.length
  · rw [List.getElem?_append_left hq]
  · rw [List.getElem?_eq_none (by omega : st.entries.length ≤ q)]
    by_cases hq2 : q = st.entries.length
    · subst hq2
      simp
    · rw [List.getElem?_eq_none (by simp; omega)]

theorem newEntry_frame (st : Reader) : EntryFrame st.entries.length st st.newEntry.2 := by
  refine ⟨rfl, rfl, rfl, rfl, rfl, rfl, fun h => h, by simp [Reader.newEntry], ?_, ?_, ?_⟩
  · intro q _ _
    exact entry_newEntry st q
  · rw [entry_newEntry]
  · intro q hq
    rw [entry_newEntry, entry_of_ge hq]
    rfl

theorem addHistoryItems_nil (entry : Nat) (st : Reader) : addHistoryItems entry [] st = st := rfl

/-- The code of `parseEntry` after its loop, for a history entry without
history items of its own. -/
theorem parseEntryFinish_true_frame (env : Env) (l : EntryLocals) (st : Reader)
    (hl : l.historyItems = []) :
    EntryFrame l.entry st (parseEntryFinish env true l st).2 ∧
      (parseEntryFinish env true l st).1 = l.entry := by
  have h1 : EntryFrame l.entry st (ensureEntryUuid env l.entry st) := by
    unfold ensureEntryUuid
    split
    · exact EntryFrame.updEntry_own _ (fun _ => rfl)
        ((EntryFrame.same _ st).of_fields rfl rfl rfl rfl rfl rfl (fun h => h) rfl)
    · exact EntryFrame.same _ _
  have h2 : EntryFrame l.entry st (mergeEntry true l.entry (ensureEntryUuid env l.entry st)).2 ∧
      (mergeEntry true l.entry (ensureEntryUuid env l.entry st)).1 = l.entry := by
    unfold mergeEntry
    split
    · rw [if_pos rfl]
      exact ⟨EntryFrame.updEntry_own _ (fun _ => rfl) h1, rfl⟩
    · split
      · exact ⟨h1.of_fields rfl rfl rfl rfl rfl rfl (fun _ => hasError_raiseError _ _) rfl, rfl⟩
      · exact ⟨h1, rfl⟩
  unfold parseEntryFinish
  simp only [hl, addHistoryItems_nil]
  exact ⟨h2.1.of_fields rfl rfl rfl rfl rfl rfl (fun h => h) rfl, h2.2⟩

theorem entry_frame (env : Env) (n : Nat) :
    (∀ history l st r, parseEntryWhile env n history l st = some r →
      l.entry < st.entries.length →
      EntryFrame l.entry st r.2 ∧ r.1.entry = l.entry ∧
      (history = true → r.1.historyItems = l.historyItems) ∧
      (∀ h ∈ r.1.historyItems,
        h ∈ l.historyItems ∨ (st.entries.length ≤ h ∧ h < r.2.entries.length))) ∧
    (∀ st r, parseEntry env n true st = some r →
      EntryFrame st.entries.length st r.2 ∧ r.1 = st.entries.length ∧
      r.1 < r.2.entries.length) ∧
    (∀ items st r, parseEntryHistoryWhile env n items st = some r →
      EntryFrame st.entries.length st r.2 ∧
      (∀ h ∈ r.1, h ∈ items ∨ (st.entries.length ≤ h ∧ h < r.2.entries.length))) ∧
    (∀ st r, parseEntryHistory env n st = some r →
      EntryFrame st.entries.length st r.2 ∧
      (∀ h ∈ r.1, st.entries.length ≤ h ∧ h < r.2.entries.length)) := by
  induction n with
  | zero => simp [parseEntryWhile, parseEntry, parseEntryHistoryWhile, parseEntryHistory]
  | succ n ih =>
    obtain ⟨ihW, ihE, ihHW, ihH⟩ := ih
    refine ⟨?_, ?_, ?_, ?_⟩
    · intro history l st r hr hlt
      unfold parseEntryWhile at hr
      have f1 := readNextStartElement_frame l.entry st
      split at hr
      · rename_i st1 heq
        cases hr
        rw [heq] at f1
        exact ⟨f1, rfl, fun _ => rfl, fun h hh => Or.inl hh⟩
      · rename_i x st1 heq
        rw [heq] at f1
        simp only at f1
        have hlt1 : l.entry < st1.entries.length := lt_of_lt_of_le hlt f1.len
        split at hr
        · split at hr
          · rename_i hhist
            obtain ⟨a1, a2, a3, a4⟩ := ihW _ _ _ _ hr (by simpa using hlt1)
            have f2 : EntryFrame l.entry st
                (st1.raiseError "History element in history entry") :=
              f1.of_fields rfl rfl rfl rfl rfl rfl (fun _ => hasError_raiseError _ _) rfl
            refine ⟨f2.chain a1 (Or.inl rfl), a2, a3, ?_⟩
            intro h hh
            rcases a4 h hh with hh1 | hh1
            · exact Or.inl hh1
            · refine Or.inr ⟨le_trans f1.len ?_, hh1.2⟩
              simpa using hh1.1
          · split at hr
            · cases hr
            · rename_i hhist _ items st2 hh
              obtain ⟨b1, b2⟩ := ihH _ _ hh
              have hlt2 : l.entry < st2.entries.length := lt_of_lt_of_le hlt1 b1.len
              obtain ⟨a1, a2, a3, a4⟩ := ihW _ _ _ _ hr hlt2
              refine ⟨(f1.chain b1 (Or.inr f1.len)).chain a1 (Or.inl rfl), a2, ?_, ?_⟩
              · intro ht
                exact absurd ht hhist
              · intro h hh
                rcases a4 h hh with hh1 | hh1
                · have := b2 h hh1
                  refine Or.inr ⟨le_trans f1.len this.1, lt_of_lt_of_le this.2 a1.len⟩
                · exact Or.inr ⟨le_trans (le_trans f1.len b1.len) hh1.1, hh1.2⟩
        · have f2 : EntryFrame l.entry st1 (parseEntryField env l.entry x (l.binaryRefs, st1)).2 :=
            parseEntryField_at (leafData_entryFrame l.entry st1)
              (fun _ t u ht => EntryFrame.updEntry_own _ (fun _ => rfl) ht)
              (EntryFrame.same l.entry st1)
          have f3 := endElement_frame f2
          have hlt3 : l.entry <
              (parseEntryField env l.entry x (l.binaryRefs, st1)).2.endElement.entries.length :=
            lt_of_lt_of_le hlt1 f3.len
          obtain ⟨a1, a2, a3, a4⟩ := ihW _ _ _ _ hr hlt3
          refine ⟨(f1.chain f3 (Or.inl rfl)).chain a1 (Or.inl rfl), a2, a3, ?_⟩
          intro h hh
          rcases a4 h hh with hh1 | hh1
          · exact Or.inl hh1
          · exact Or.inr ⟨le_trans (le_trans f1.len f3.len) hh1.1, hh1.2⟩
    · intro st r hr
      unfold parseEntry at hr
      simp only at hr
      split at hr
      · cases hr
      · rename_i l st3 hw
        cases hr
        have hn : st.newEntry.1 = st.entries.length := rfl
        have f0 : EntryFrame st.entries.length st
            (st.newEntry.2.updEntry st.newEntry.1 (fun e => { e with m_updateTimeinfo := false })) :=
          EntryFrame.updEntry_own _ (fun _ => rfl) (newEntry_frame st)
        have hlt : st.entries.length < (st.newEntry.2.updEntry st.newEntry.1
            (fun e => { e with m_updateTimeinfo := false })).entries.length := by
          simp [Reader.newEntry]
        obtain ⟨a1, a2, a3, a4⟩ := ihW _ _ _ _ hw hlt
        have hl : l.historyItems = [] := a3 rfl
        have hle : l.entry = st.entries.length := a2
        obtain ⟨c1, c2⟩ := parseEntryFinish_true_frame env l st3 hl
        rw [hle] at c1
        have f := (f0.chain a1 (Or.inl rfl)).chain c1 (Or.inl rfl)
        refine ⟨f, c2.trans hle, ?_⟩
        rw [c2, hle]
        exact lt_of_lt_of_le (lt_of_lt_of_le hlt a1.len) c1.len
    · intro items st r hr
      unfold parseEntryHistoryWhile at hr
      have f1 := readNextStartElement_frame st.entries.length st
      split at hr
      · rename_i st1 heq
        cases hr
        rw [heq] at f1
        exact ⟨f1, fun h hh => Or.inl hh⟩
      · rename_i x st1 heq
        rw [heq] at f1
        simp only at f1
        split at hr
        · split at hr
          · cases hr
          · rename_i e st2 he
            obtain ⟨b1, b2, b3⟩ := ihE _ _ he
            have b2 : e = st1.entries.length := b2
            have b3 : e < st2.entries.length := b3
            obtain ⟨a1, a2⟩ := ihHW _ _ _ hr
            have f2 := f1.chain b1 (Or.inr f1.len)
            refine ⟨f2.chain a1 (Or.inr f2.len), ?_⟩
            intro h hh
            rcases a2 h hh with hh1 | hh1
            · rcases List.mem_append.mp hh1 with hh2 | hh2
              · exact Or.inl hh2
              · have : h = e := by simpa using hh2
                subst this
                refine Or.inr ⟨?_, lt_of_lt_of_le b3 a1.len⟩
                rw [b2]
                exact f1.len
            · exact Or.inr ⟨le_trans f2.len hh1.1, hh1.2⟩
        · have f3 : EntryFrame st.entries.length st (skipCurrentElement st1) :=
            endElement_frame f1
          obtain ⟨a1, a2⟩ := ihHW _ _ _ hr
          refine ⟨f3.chain a1 (Or.inr f3.len), ?_⟩
          intro h hh
          rcases a2 h hh with hh1 | hh1
          · exact Or.inl hh1
          · exact Or.inr ⟨le_trans f3.len hh1.1, hh1.2⟩
    · intro st r hr
      unfold parseEntryHistory at hr
      obtain ⟨a1, a2⟩ := ihHW _ _ _ hr
      refine ⟨a1, ?_⟩
      intro h hh
      rcases a2 h hh with hh1 | hh1
      · cases hh1
      · exact hh1

/-! ### The heaps and the registries through the steps of a decode -/

theorem HeapInv.of_eq {st r : Reader} (h : HeapInv st)
    (hg : ∀ p, (r.group p).ident = (st.group p).ident)
    (he : ∀ e, (r.entry e).ident = (st.entry e).ident)
    (h1 : r.m_groups = st.m_groups) (h2 : r.m_entries = st.m_entries)
    (h3 : r.groups.length = st.groups.length) (h4 : r.entries.length = st.entries.length)
    (h5 : r.m_strictMode = st.m_strictMode) (h6 : st.hasError = true → r.hasError = true) :
    HeapInv r := by
  have gu : ∀ p, (r.group p).m_uuid = (st.group p).m_uuid := fun p =>
    congrArg (fun x => x.2) (hg p)
  have gc : ∀ p, (r.group p).m_children = (st.group p).m_children := fun p =>
    congrArg (fun x => x.1.2.1) (hg p)
  have ge : ∀ p, (r.group p).m_entries = (st.group p).m_entries := fun p =>
    congrArg (fun x => x.1.2.2) (hg p)
  have eu : ∀ e, (r.entry e).m_uuid = (st.entry e).m_uuid := fun e =>
    congrArg (fun x => x.2.2) (he e)
  have eh : ∀ e, (r.entry e).m_history = (st.entry e).m_history := fun e =>
    congrArg (fun x => x.2.1) (he e)
  have hn : r.hasError = false → st.hasError = false := by
    intro hr
    by_contra hs
    have := h6 (by simpa using hs)
    rw [hr] at this
    cases this
  constructor
  · intro u p hp
    rw [h3]
    exact h.greg_lt u p (h1 ▸ hp)
  · intro u p hp
    rw [gu]
    exact h.greg_uuid u p (h1 ▸ hp)
  · intro u e hp
    rw [h4]
    exact h.ereg_lt u e (h2 ▸ hp)
  · intro u e hp
    rw [eu]
    exact h.ereg_uuid u e (h2 ▸ hp)
  · intro e x hx
    rw [h4]
    exact h.hist_lt e x (eh e ▸ hx)
  · intro e x hx
    rw [eh]
    exact h.hist_nil e x (eh e ▸ hx)
  · intro e x hx u
    rw [h2]
    exact h.hist_unreg e x (eh e ▸ hx) u
  · intro hs e x hx
    rw [eu, eu]
    exact h.hist_uuid (h5 ▸ hs) e x (eh e ▸ hx)
  · intro hr p c hc
    rw [h1]
    exact h.kids (hn hr) p c (gc p ▸ hc)
  · intro hr p e hc
    rw [h2]
    exact h.ents (hn hr) p e (ge p ▸ hc)

/-- A step that changes neither heap nor registry. -/
theorem HeapInv.of_same {st r : Reader} (h : HeapInv st) (h1 : r.groups = st.groups)
    (h2 : r.entries = st.entries) (h3 : r.m_groups = st.m_groups)
    (h4 : r.m_entries = st.m_entries) (h5 : r.m_strictMode = st.m_strictMode)
    (h6 : st.hasError = true → r.hasError = true) : HeapInv r :=
  h.of_eq (fun p => by unfold Reader.group; rw [h1]) (fun e => by unfold Reader.entry; rw [h2])
    h3 h4 (by rw [h1]) (by rw [h2]) h5 h6

theorem heapInv_updGroup_ident {st : Reader} (h : HeapInv st) (p : Nat) (f : DbGroup → DbGroup)
    (hf : (f (st.group p)).ident = (st.group p).ident) : HeapInv (st.updGroup p f) := by
  refine h.of_eq ?_ ?_ (by simp) (by simp) (by simp) (by simp) (by simp)
    (by simp [Reader.hasError])
  · intro q
    rw [group_updGroup]
    split
    · rename_i hq
      rw [hq.1]
      exact hf
    · rfl
  · intro q
    rw [entry_updGroup]

theorem heapInv_updEntry_ident {st : Reader} (h : HeapInv st) (p : Nat) (f : Entry → Entry)
    (hf : (f (st.entry p)).ident = (st.entry p).ident) : HeapInv (st.updEntry p f) := by
  refine h.of_eq ?_ ?_ (by simp) (by simp) (by simp) (by simp) (by simp)
    (by simp [Reader.hasError])
  · intro q
    rw [group_updEntry]
  · intro q
    rw [entry_updEntry]
    split
    · rename_i hq
      rw [hq.1]
      exact hf
    · rfl

/-- A step of a decode that leaves every history as it is keeps the state of
the heaps: new registrations are sound, registered objects keep their UUID,
entries in a history and their owners keep their UUID in Lenient mode, and what
joins a child list or an entry list is registered. -/
theorem HeapInv.step {st r : Reader} (h : HeapInv st)
    (glen : st.groups.length ≤ r.groups.length)
    (elen : st.entries.length ≤ r.entries.length)
    (greg : ∀ u p, mapGet u r.m_groups = some p → mapGet u st.m_groups = some p ∨
      (p < r.groups.length ∧ (r.group p).m_uuid = u ∧ u.isNull = false))
    (guuid : ∀ u p, mapGet u st.m_groups = some p → (r.group p).m_uuid = (st.group p).m_uuid)
    (ereg : ∀ u e, mapGet u r.m_entries = some e → mapGet u st.m_entries = some e ∨
      (e < r.entries.length ∧ (r.entry e).m_uuid = u ∧ u.isNull = false ∧
        ∀ x, e ∉ (st.entry x).m_history))
    (euuid : ∀ u e, mapGet u st.m_entries = some e → (r.entry e).m_uuid = (st.entry e).m_uuid)
    (hist : ∀ e, (r.entry e).m_history = (st.entry e).m_history)
    (huuid : ∀ e x, x ∈ (st.entry e).m_history →
      (r.entry x).m_uuid = (st.entry x).m_uuid ∧ (r.entry e).m_uuid = (st.entry e).m_uuid)
    (kids : r.hasError = false → ∀ p c, c ∈ (r.group p).m_children →
      c ∈ (st.group p).m_children ∨ ∃ u, mapGet u r.m_groups = some c)
    (ents : r.hasError = false → ∀ p e, e ∈ (r.group p).m_entries →
      e ∈ (st.group p).m_entries ∨ ∃ u, mapGet u r.m_entries = some e)
    (gmono : ∀ u p, mapGet u st.m_groups = some p → mapGet u r.m_groups = some p)
    (emono : ∀ u e, mapGet u st.m_entries = some e → mapGet u r.m_entries = some e)
    (strict : r.m_strictMode = st.m_strictMode)
    (err : st.hasError = true → r.hasError = true) : HeapInv r := by
  have hn : r.hasError = false → st.hasError = false := by
    intro hr
    by_contra hs
    have := err (by simpa using hs)
    rw [hr] at this
    cases this
  constructor
  · intro u p hp
    rcases greg u p hp with h1 | h1
    · exact lt_of_lt_of_le (h.greg_lt u p h1) glen
    · exact h1.1
  · intro u p hp
    rcases greg u p hp with h1 | h1
    · rw [guuid u p h1]
      exact h.greg_uuid u p h1
    · exact h1.2
  · intro u e hp
    rcases ereg u e hp with h1 | h1
    · exact lt_of_lt_of_le (h.ereg_lt u e h1) elen
    · exact h1.1
  · intro u e hp
    rcases ereg u e hp with h1 | h1
    · rw [euuid u e h1]
      exact h.ereg_uuid u e h1
    · exact ⟨h1.2.1, h1.2.2.1⟩
  · intro e x hx
    rw [hist] at hx
    exact lt_of_lt_of_le (h.hist_lt e x hx) elen
  · intro e x hx
    rw [hist] at hx
    rw [hist]
    exact h.hist_nil e x hx
  · intro e x hx u hu
    rw [hist] at hx
    rcases ereg u x hu with h1 | h1
    · exact h.hist_unreg e x hx u h1
    · exact h1.2.2.2 e hx
  · intro hs e x hx
    rw [hist] at hx
    rw [(huuid e x hx).1, (huuid e x hx).2]
    exact h.hist_uuid (strict ▸ hs) e x hx
  · intro hr p c hc
    rcases kids hr p c hc with h1 | h1
    · obtain ⟨u, hu⟩ := h.kids (hn hr) p c h1
      exact ⟨u, gmono u c hu⟩
    · exact h1
  · intro hr p e hc
    rcases ents hr p e hc with h1 | h1
    · obtain ⟨u, hu⟩ := h.ents (hn hr) p e h1
      exact ⟨u, emono u e hu⟩
    · exact h1

theorem mem_children_updGroup {st : Reader} {p q c : Nat} {f : DbGroup → DbGroup}
    (h : c ∈ ((st.updGroup p f).group q).m_children) :
    c ∈ (st.group q).m_children ∨ (q = p ∧ c ∈ (f (st.group p)).m_children) := by
  rw [group_updGroup] at h
  split at h
  · rename_i hq
    exact Or.inr ⟨hq.1, h⟩
  · exact Or.inl h

theorem mem_entries_updGroup {st : Reader} {p q c : Nat} {f : DbGroup → DbGroup}
    (h : c ∈ ((st.updGroup p f).group q).m_entries) :
    c ∈ (st.group q).m_entries ∨ (q = p ∧ c ∈ (f (st.group p)).m_entries) := by
  rw [group_updGroup] at h
  split at h
  · rename_i hq
    exact Or.inr ⟨hq.1, h⟩
  · exact Or.inl h

theorem entries_updGroup_of (st : Reader) (p q : Nat) (f : DbGroup → DbGroup)
    (hf : ∀ g, (f g).m_entries = g.m_entries) :
    ((st.updGroup p f).group q).m_entries = (st.group q).m_entries := by
  rw [group_updGroup]
  split
  · rename_i hq
    rw [hf, hq.1]
  · rfl

theorem children_updGroup_of (st : Reader) (p q : Nat) (f : DbGroup → DbGroup)
    (hf : ∀ g, (f g).m_children = g.m_children) :
    ((st.updGroup p f).group q).m_children = (st.group q).m_children := by
  rw [group_updGroup]
  split
  · rename_i hq
    rw [hf, hq.1]
  · rfl

theorem mem_children_cleanupParent {st : Reader} {c q x : Nat}
    (h : x ∈ ((st.cleanupParent c).group q).m_children) : x ∈ (st.group q).m_children := by
  unfold Reader.cleanupParent at h
  split at h
  · rcases mem_children_updGroup h with h1 | h1
    · exact h1
    · have := h1.2
      rw [h1.1]
      exact (List.mem_filter.mp this).1
  · exact h

theorem entries_cleanupParent (st : Reader) (c q : Nat) :
    ((st.cleanupParent c).group q).m_entries = (st.group q).m_entries := by
  unfold Reader.cleanupParent
  split
  · exact entries_updGroup_of _ _ _ _ (by intro _; rfl)
  · rfl

/-- What `setParent` does to the child lists, the entry lists and the UUIDs. -/
theorem setParent_effect (st : Reader) (c p : Nat) :
    (∀ q x, x ∈ ((st.setParent c p).group q).m_children →
      x ∈ (st.group q).m_children ∨ x = c) ∧
    (∀ q, ((st.setParent c p).group q).m_entries = (st.group q).m_entries) ∧
    (∀ q, ((st.setParent c p).group q).m_uuid = (st.group q).m_uuid) := by
  refine ⟨?_, ?_, fun q => uuid_setParent st c p q⟩
  · intro q x hx
    unfold Reader.setParent at hx
    simp only at hx
    rcases mem_children_updGroup hx with h1 | h1
    · rw [children_updGroup_of _ _ _ _ (by intro _; rfl)] at h1
      exact Or.inl (mem_children_cleanupParent h1)
    · have h2 := h1.2
      simp only [List.mem_append, List.mem_singleton] at h2
      rcases h2 with h2 | h2
      · rw [children_updGroup_of _ _ _ _ (by intro _; rfl)] at h2
        rw [h1.1]
        exact Or.inl (mem_children_cleanupParent h2)
      · exact Or.inr h2
  · intro q
    unfold Reader.setParent
    simp only
    rw [entries_updGroup_of _ _ _ _ (by intro _; rfl), entries_updGroup_of _ _ _ _ (by intro _; rfl),
      entries_cleanupParent]

/-- What `setRootGroup` does to the child lists, the entry lists and the UUIDs. -/
theorem setRootGroup_effect (st : Reader) (p : Nat) :
    (∀ q x, x ∈ ((st.setRootGroup p).group q).m_children → x ∈ (st.group q).m_children) ∧
    (∀ q, ((st.setRootGroup p).group q).m_entries = (st.group q).m_entries) ∧
    (∀ q, ((st.setRootGroup p).group q).m_uuid = (st.group q).m_uuid) := by
  refine ⟨?_, ?_, fun q => uuid_setRootGroup st p q⟩
  · intro q x hx
    unfold Reader.setRootGroup at hx
    simp only at hx
    have hx : x ∈ ((((st.cleanupParent p).updGroup p
        (fun g => { g with m_parent := .database })).group q).m_children) := hx
    rw [children_updGroup_of _ _ _ _ (by intro _; rfl)] at hx
    exact mem_children_cleanupParent hx
  · intro q
    unfold Reader.setRootGroup
    simp only
    show ((((st.cleanupParent p).updGroup p
        (fun g => { g with m_parent := .database })).group q).m_entries) = _
    rw [entries_updGroup_of _ _ _ _ (by intro _; rfl), entries_cleanupParent]

/-- What `setGroup` does to the two heaps. -/
theorem setGroup_effect (st : Reader) (e p : Nat) :
    (∀ q x, x ∈ ((st.setGroup e p).group q).m_entries → x ∈ (st.group q).m_entries ∨ x = e) ∧
    (∀ q, ((st.setGroup e p).group q).m_children = (st.group q).m_children) ∧
    (∀ q, ((st.setGroup e p).group q).m_uuid = (st.group q).m_uuid) ∧
    (∀ q, ((st.setGroup e p).entry q).m_uuid = (st.entry q).m_uuid) ∧
    (∀ q, ((st.setGroup e p).entry q).m_history = (st.entry q).m_history) := by
  unfold Reader.setGroup
  split
  · exact ⟨fun q x hx => Or.inl hx, fun _ => rfl, fun _ => rfl, fun _ => rfl, fun _ => rfl⟩
  · simp only
    refine ⟨?_, ?_, ?_, ?_, ?_⟩
    · intro q x hx
      rcases mem_entries_updGroup hx with h1 | h1
      · rw [group_updEntry] at h1
        split at h1
        · rcases mem_entries_updGroup h1 with h2 | h2
          · exact Or.inl h2
          · rw [h2.1]
            exact Or.inl (List.mem_filter.mp h2.2).1
        · exact Or.inl h1
      · have h2 := h1.2
        simp only [List.mem_append, List.mem_singleton] at h2
        rcases h2 with h2 | h2
        · rw [group_updEntry] at h2
          rw [h1.1]
          split at h2
          · rcases mem_entries_updGroup h2 with h3 | h3
            · exact Or.inl h3
            · rw [h3.1]
              exact Or.inl (List.mem_filter.mp h3.2).1
          · exact Or.inl h2
        · exact Or.inr h2
    · intro q
      rw [children_updGroup_of _ _ _ _ (by intro _; rfl), group_updEntry]
      split
      · exact children_updGroup_of _ _ _ _ (by intro _; rfl)
      · rfl
    · intro q
      rw [uuid_updGroup _ _ _ _ (by intro _; rfl), group_updEntry]
      split
      · exact uuid_updGroup _ _ _ _ (by intro _; rfl)
      · rfl
    · intro q
      rw [entry_updGroup, entry_updEntry]
      split
      · rename_i hq
        rw [hq.1]
        split
        · rw [entry_updGroup]
        · rfl
      · split
        · rw [entry_updGroup]
        · rfl
    · intro q
      rw [entry_updGroup, entry_updEntry]
      split
      · rename_i hq
        rw [hq.1]
        split
        · rw [entry_updGroup]
        · rfl
      · split
        · rw [entry_updGroup]
        · rfl

theorem getGroup_new {u : Uuid} {st : Reader} (hu : u.isNull = false)
    (hm : mapGet u st.m_groups = none) :
    getGroup u st = (some st.groups.length,
      ((((st.newGroup.2.updGroup st.groups.length
        (fun g => { g with m_updateTimeinfo := false })).updGroup st.groups.length
        (fun g => { g with m_uuid := u })).setParent st.groups.length
        st.m_tmpParent).registerGroup u st.groups.length)) := by
  unfold getGroup
  rw [if_neg (by simp [hu])]
  simp only [hm, Reader.updGroup_m_tmpParent, Reader.newGroup]

theorem getGroup_old {u : Uuid} {st : Reader} {p : Nat} (hu : u.isNull = false)
    (hm : mapGet u st.m_groups = some p) : getGroup u st = (some p, st.logGroup u p) := by
  unfold getGroup
  rw [if_neg (by simp [hu])]
  simp only [hm]

theorem getGroup_null {u : Uuid} {st : Reader} (hu : u.isNull = true) :
    getGroup u st = (none, st) := by
  unfold getGroup
  rw [if_pos hu]

theorem getEntry_new {u : Uuid} {st : Reader} (hu : u.isNull = false)
    (hm : mapGet u st.m_entries = none) :
    getEntry u st = (some st.entries.length,
      ((((st.newEntry.2.updEntry st.entries.length
        (fun e => { e with m_updateTimeinfo := false })).updEntry st.entries.length
        (fun e => { e with m_uuid := u })).setGroup st.entries.length
        st.m_tmpParent).registerEntry u st.entries.length)) := by
  unfold getEntry
  rw [if_neg (by simp [hu])]
  simp only [hm, Reader.updEntry_m_tmpParent, Reader.newEntry]

theorem getEntry_old {u : Uuid} {st : Reader} {p : Nat} (hu : u.isNull = false)
    (hm : mapGet u st.m_entries = some p) : getEntry u st = (some p, st.logEntry u p) := by
  unfold getEntry
  rw [if_neg (by simp [hu])]
  simp only [hm]

theorem getEntry_null {u : Uuid} {st : Reader} (hu : u.isNull = true) :
    getEntry u st = (none, st) := by
  unfold getEntry
  rw [if_pos hu]

theorem group_registerGroup (s : Reader) (u : Uuid) (g q : Nat) :
    (s.registerGroup u g).group q = s.group q := rfl

theorem entry_registerEntry (s : Reader) (u : Uuid) (e q : Nat) :
    (s.registerEntry u e).entry q = s.entry q := rfl

theorem group_registerEntry (s : Reader) (u : Uuid) (e q : Nat) :
    (s.registerEntry u e).group q = s.group q := rfl

/-- What `getGroup` does to the heap of groups and its registry. -/
theorem getGroup_effect (u : Uuid) (st : Reader) :
    st.groups.length ≤ (getGroup u st).2.groups.length ∧
    (∀ q, q < st.groups.length →
      ((getGroup u st).2.group q).m_uuid = (st.group q).m_uuid) ∧
    (∀ q x, x ∈ ((getGroup u st).2.group q).m_children →
      x ∈ (st.group q).m_children ∨ ∃ v, mapGet v (getGroup u st).2.m_groups = some x) ∧
    (∀ q, ((getGroup u st).2.group q).m_entries = (st.group q).m_entries) ∧
    (∀ v p, mapGet v st.m_groups = some p → mapGet v (getGroup u st).2.m_groups = some p) ∧
    (∀ v p, mapGet v (getGroup u st).2.m_groups = some p → mapGet v st.m_groups = some p ∨
      (p = st.groups.length ∧ p < (getGroup u st).2.groups.length ∧
        ((getGroup u st).2.group p).m_uuid = v ∧ v.isNull = false)) := by
  cases hu : u.isNull with
  | true =>
    rw [getGroup_null hu]
    exact ⟨le_refl _, fun _ _ => rfl, fun _ _ hx => Or.inl hx, fun _ => rfl, fun _ _ h => h,
      fun _ _ h => Or.inl h⟩
  | false =>
    cases hm : mapGet u st.m_groups with
    | some p =>
      rw [getGroup_old hu hm]
      exact ⟨le_refl _, fun _ _ => rfl, fun _ _ hx => Or.inl hx, fun _ => rfl, fun _ _ h => h,
        fun _ _ h => Or.inl h⟩
    | none =>
      rw [getGroup_new hu hm]
      simp only
      have hg : ∀ q, ((((st.newGroup.2.updGroup st.groups.length
          (fun g => { g with m_updateTimeinfo := false })).updGroup st.groups.length
          (fun g => { g with m_uuid := u })).setParent st.groups.length
          st.m_tmpParent).group q).m_uuid =
          if q = st.groups.length then u else (st.group q).m_uuid := by
        intro q
        rw [uuid_setParent, group_updGroup]
        split
        · rename_i hq
          rw [if_pos hq.1]
        · rename_i hq
          have hq2 : ¬ q = st.groups.length := by
            intro e
            apply hq
            refine ⟨e, ?_⟩
            simp [Reader.newGroup]
          rw [if_neg hq2, uuid_updGroup _ _ _ _ (by intro _; rfl), group_newGroup]
      refine ⟨?_, ?_, ?_, ?_, ?_, ?_⟩
      · simp [Reader.newGroup]
      · intro q hq
        rw [group_registerGroup, hg, if_neg (by omega)]
      · intro q x hx
        rw [group_registerGroup] at hx
        rcases (setParent_effect _ _ _).1 q x hx with h1 | h1
        · rw [children_updGroup_of _ _ _ _ (by intro _; rfl),
            children_updGroup_of _ _ _ _ (by intro _; rfl), group_newGroup] at h1
          exact Or.inl h1
        · refine Or.inr ⟨u, ?_⟩
          rw [h1]
          exact mapGet_mapSet_self _ _ _
      · intro q
        rw [group_registerGroup, (setParent_effect _ _ _).2.1,
          entries_updGroup_of _ _ _ _ (by intro _; rfl),
          entries_updGroup_of _ _ _ _ (by intro _; rfl), group_newGroup]
      · intro v p hp
        show mapGet v (mapSet u _ _) = some p
        rw [mapGet_mapSet]
        split
        · rename_i hv
          rw [hv, hm] at hp
          cases hp
        · simpa using hp
      · intro v p hp
        have hp : mapGet v (mapSet u st.groups.length st.m_groups) = some p := by
          simpa using hp
        rw [mapGet_mapSet] at hp
        split at hp
        · rename_i hv
          have hp2 : st.groups.length = p := by simpa using hp
          refine Or.inr ⟨hp2.symm, ?_, ?_, ?_⟩
          · simp [Reader.newGroup, ← hp2]
          · rw [group_registerGroup, hg, if_pos hp2.symm, hv]
          · rw [hv]
            exact hu
        · exact Or.inl hp

/-- What `getEntry` does to the two heaps and the registry of entries. -/
theorem getEntry_effect (u : Uuid) (st : Reader) :
    (getEntry u st).2.groups.length = st.groups.length ∧
    st.entries.length ≤ (getEntry u st).2.entries.length ∧
    (∀ q, ((getEntry u st).2.group q).m_uuid = (st.group q).m_uuid) ∧
    (∀ q, ((getEntry u st).2.group q).m_children = (st.group q).m_children) ∧
    (∀ q x, x ∈ ((getEntry u st).2.group q).m_entries →
      x ∈ (st.group q).m_entries ∨ ∃ v, mapGet v (getEntry u st).2.m_entries = some x) ∧
    (∀ q, q < st.entries.length →
      ((getEntry u st).2.entry q).m_uuid = (st.entry q).m_uuid) ∧
    (∀ q, ((getEntry u st).2.entry q).m_history = (st.entry q).m_history) ∧
    (∀ v p, mapGet v st.m_entries = some p → mapGet v (getEntry u st).2.m_entries = some p) ∧
    (∀ v p, mapGet v (getEntry u st).2.m_entries = some p → mapGet v st.m_entries = some p ∨
      (p = st.entries.length ∧ p < (getEntry u st).2.entries.length ∧
        ((getEntry u st).2.entry p).m_uuid = v ∧ v.isNull = false)) := by
  cases hu : u.isNull with
  | true =>
    rw [getEntry_null hu]
    exact ⟨rfl, le_refl _, fun _ => rfl, fun _ => rfl, fun _ _ hx => Or.inl hx, fun _ _ => rfl,
      fun _ => rfl, fun _ _ h => h, fun _ _ h => Or.inl h⟩
  | false =>
    cases hm : mapGet u st.m_entries with
    | some p =>
      rw [getEntry_old hu hm]
      exact ⟨rfl, le_refl _, fun _ => rfl, fun _ => rfl, fun _ _ hx => Or.inl hx,
        fun _ _ => rfl, fun _ => rfl, fun _ _ h => h, fun _ _ h => Or.inl h⟩
    | none =>
      rw [getEntry_new hu hm]
      simp only
      have hg : ∀ q, ((st.newEntry.2.updEntry st.entries.length
          (fun e => { e with m_updateTimeinfo := false })).updEntry st.entries.length
          (fun e => { e with m_uuid := u })).group q = st.group q := by
        intro q
        rw [group_updEntry, group_updEntry]
        rfl
      have he : ∀ q, ((((st.newEntry.2.updEntry st.entries.length
          (fun e => { e with m_updateTimeinfo := false })).updEntry st.entries.length
          (fun e => { e with m_uuid := u })).setGroup st.entries.length
          st.m_tmpParent).entry q).m_uuid =
          if q = st.entries.length then u else (st.entry q).m_uuid := by
        intro q
        rw [(setGroup_effect _ _ _).2.2.2.1, entry_updEntry]
        split
        · rename_i hq
          rw [if_pos hq.1]
        · rename_i hq
          have hq2 : ¬ q = st.entries.length := by
            intro e
            apply hq
            refine ⟨e, ?_⟩
            simp [Reader.newEntry]
          rw [if_neg hq2, entry_updEntry]
          split
          · rename_i hq3
            exact absurd hq3.1 hq2
          · rw [entry_newEntry]
      refine ⟨?_, ?_, ?_, ?_, ?_, ?_, ?_, ?_, ?_⟩
      · simp [Reader.newEntry]
      · simp [Reader.newEntry]
      · intro q
        rw [group_registerEntry, (setGroup_effect _ _ _).2.2.1, hg]
      · intro q
        rw [group_registerEntry, (setGroup_effect _ _ _).2.1, hg]
      · intro q x hx
        rw [group_registerEntry] at hx
        rcases (setGroup_effect _ _ _).1 q x hx with h1 | h1
        · rw [hg] at h1
          exact Or.inl h1
        · refine Or.inr ⟨u, ?_⟩
          rw [h1]
          exact mapGet_mapSet_self _ _ _
      · intro q hq
        rw [entry_registerEntry, he, if_neg (by omega)]
      · intro q
        rw [entry_registerEntry, (setGroup_effect _ _ _).2.2.2.2, entry_updEntry]
        split
        · rename_i hq
          rw [entry_updEntry]
          split
          · rw [entry_newEntry, hq.1]
          · rw [entry_newEntry, hq.1]
        · rw [entry_updEntry]
          split
          · rename_i hq1 hq2
            rw [entry_newEntry, hq2.1]
          · rw [entry_newEntry]
      · intro v p hp
        show mapGet v (mapSet u _ _) = some p
        rw [mapGet_mapSet]
        split
        · rename_i hv
          rw [hv, hm] at hp
          cases hp
        · simpa using hp
      · intro v p hp
        have hp : mapGet v (mapSet u st.entries.length st.m_entries) = some p := by
          simpa using hp
        rw [mapGet_mapSet] at hp
        split at hp
        · rename_i hv
          have hp2 : st.entries.length = p := by simpa using hp
          refine Or.inr ⟨hp2.symm, ?_, ?_, ?_⟩
          · simp [Reader.newEntry, ← hp2]
          · rw [entry_registerEntry, he, if_pos hp2.symm, hv]
          · rw [hv]
            exact hu
        · exact Or.inl hp

theorem hasError_getGroup (u : Uuid) (st : Reader) : (getGroup u st).2.hasError = st.hasError := by
  simp [Reader.hasError]

theorem hasError_getEntry (u : Uuid) (st : Reader) : (getEntry u st).2.hasError = st.hasError := by
  simp [Reader.hasError]

theorem heapInv_getGroup {st : Reader} (h : HeapInv st) (u : Uuid) :
    HeapInv (getGroup u st).2 := by
  obtain ⟨e1, e2, e3, e4, e5, e6⟩ := getGroup_effect u st
  refine h.step e1 (by simp) ?_ ?_ ?_ ?_ ?_ ?_ ?_ ?_ e5 ?_ (by simp) ?_
  · intro v p hp
    rcases e6 v p hp with h1 | h1
    · exact Or.inl h1
    · exact Or.inr h1.2
  · intro v p hp
    exact e2 p (h.greg_lt v p hp)
  · intro v e he
    rw [getGroup_m_entries] at he
    exact Or.inl he
  · intro v e he
    simp [Reader.entry]
  · intro e
    simp [Reader.entry]
  · intro e x hx
    simp [Reader.entry]
  · intro _ p c hc
    exact e3 p c hc
  · intro _ p e he
    rw [e4] at he
    exact Or.inl he
  · intro v e he
    simpa using he
  · intro he
    rw [hasError_getGroup]
    exact he

theorem heapInv_getEntry {st : Reader} (h : HeapInv st) (u : Uuid) :
    HeapInv (getEntry u st).2 := by
  obtain ⟨e1, e2, e3, e4, e5, e6, e7, e8, e9⟩ := getEntry_effect u st
  refine h.step (by rw [e1]) e2 ?_ ?_ ?_ ?_ e7 ?_ ?_ (fun _ => e5) ?_ e8 (by simp) ?_
  · intro v p hp
    rw [getEntry_m_groups] at hp
    exact Or.inl hp
  · intro v p _
    exact e3 p
  · intro v e he
    rcases e9 v e he with h1 | h1
    · exact Or.inl h1
    · refine Or.inr ⟨h1.2.1, h1.2.2.1, h1.2.2.2, ?_⟩
      intro x hx
      have := h.hist_lt x e hx
      omega
  · intro v e he
    exact e6 e (h.ereg_lt v e he)
  · intro e x hx
    exact ⟨e6 x (h.hist_lt e x hx), by
      by_cases he : e < st.entries.length
      · exact e6 e he
      · have : (st.entry e).m_history = [] := by
          rw [entry_of_ge (by omega)]
          rfl
        rw [this] at hx
        cases hx⟩
  · intro _ p c hc
    rw [e4] at hc
    exact Or.inl hc
  · intro v p hp
    simpa using hp
  · intro he
    rw [hasError_getEntry]
    exact he

theorem HeapExt.here (x : Nat) (st : Reader) : HeapExt x st st :=
  ⟨le_refl _, le_refl _, fun _ _ _ => rfl, fun _ _ => rfl, fun _ _ h => h, fun _ _ h => h,
    fun _ _ h => Or.inl h, fun _ _ h => Or.inl h, fun h => h, rfl⟩

/-- One more step after a stretch of a decode. -/
theorem HeapExt.next {x : Nat} {a s r : Reader} (h : HeapExt x a s)
    (glen : s.groups.length ≤ r.groups.length) (elen : s.entries.length ≤ r.entries.length)
    (guuid : ∀ q, q < a.groups.length → q ≠ x → (r.group q).m_uuid = (s.group q).m_uuid)
    (euuid : ∀ q, q < a.entries.length → (r.entry q).m_uuid = (s.entry q).m_uuid)
    (greg : ∀ u p, mapGet u s.m_groups = some p → mapGet u r.m_groups = some p)
    (ereg : ∀ u e, mapGet u s.m_entries = some e → mapGet u r.m_entries = some e)
    (gnew : ∀ u p, mapGet u r.m_groups = some p →
      mapGet u s.m_groups = some p ∨ s.groups.length ≤ p)
    (enew : ∀ u e, mapGet u r.m_entries = some e →
      mapGet u s.m_entries = some e ∨ s.entries.length ≤ e)
    (err : s.hasError = true → r.hasError = true)
    (strict : r.m_strictMode = s.m_strictMode) : HeapExt x a r := by
  refine ⟨le_trans h.glen glen, le_trans h.elen elen, ?_, ?_, fun u p hp => greg u p (h.greg u p hp),
    fun u e he => ereg u e (h.ereg u e he), ?_, ?_, fun e => err (h.err e),
    strict.trans h.strict⟩
  · intro q hq hx
    rw [guuid q hq hx]
    exact h.guuid q hq hx
  · intro q hq
    rw [euuid q hq]
    exact h.euuid q hq
  · intro u p hp
    rcases gnew u p hp with h1 | h1
    · exact h.gnew u p h1
    · exact Or.inr (le_trans h.glen h1)
  · intro u e he
    rcases enew u e he with h1 | h1
    · exact h.enew u e h1
    · exact Or.inr (le_trans h.elen h1)

/-- Two stretches of a decode in a row. -/
theorem HeapExt.join {x : Nat} {a b c : Reader} (h1 : HeapExt x a b) (h2 : HeapExt x b c) :
    HeapExt x a c :=
  h1.next h2.glen h2.elen (fun q hq hx => h2.guuid q (lt_of_lt_of_le hq h1.glen) hx)
    (fun q hq => h2.euuid q (lt_of_lt_of_le hq h1.elen)) h2.greg h2.ereg h2.gnew h2.enew
    h2.err h2.strict

/-- A stretch that keeps the UUID of every group of its start keeps them but for
any one group. -/
theorem HeapExt.except {x y : Nat} {a b : Reader} (h : HeapExt x a b)
    (hx : a.groups.length ≤ x) : HeapExt y a b :=
  ⟨h.glen, h.elen, fun q hq _ => h.guuid q hq (by omega), h.euuid, h.greg, h.ereg, h.gnew,
    h.enew, h.err, h.strict⟩

/-- A step that changes neither heap nor registry. -/
theorem heapExt_of_same {x : Nat} {a s r : Reader} (h : HeapExt x a s)
    (h1 : r.groups = s.groups) (h2 : r.entries = s.entries) (h3 : r.m_groups = s.m_groups)
    (h4 : r.m_entries = s.m_entries) (h5 : r.m_strictMode = s.m_strictMode)
    (h6 : s.hasError = true → r.hasError = true) : HeapExt x a r :=
  h.next (by rw [h1]) (by rw [h2]) (fun q _ _ => by unfold Reader.group; rw [h1])
    (fun q _ => by unfold Reader.entry; rw [h2]) (fun u p hp => by rw [h3]; exact hp)
    (fun u p hp => by rw [h4]; exact hp) (fun u p hp => Or.inl (h3 ▸ hp))
    (fun u p hp => Or.inl (h4 ▸ hp)) h6 h5

theorem heapExt_updGroup {x : Nat} {a s : Reader} (h : HeapExt x a s) (p : Nat)
    (f : DbGroup → DbGroup)
    (hf : p = x ∨ a.groups.length ≤ p ∨ (f (s.group p)).m_uuid = (s.group p).m_uuid) :
    HeapExt x a (s.updGroup p f) := by
  refine h.next (by simp) (by simp) ?_ (fun q _ => by rw [entry_updGroup])
    (fun u p hp => by simpa using hp) (fun u p hp => by simpa using hp)
    (fun u p hp => Or.inl (by simpa using hp)) (fun u p hp => Or.inl (by simpa using hp))
    (by simp [Reader.hasError]) (by simp)
  intro q hq hx
  rw [group_updGroup]
  split
  · rename_i hc
    rcases hf with h1 | h1 | h1
    · exact absurd (hc.1.trans h1) hx
    · omega
    · rw [hc.1]
      exact h1
  · rfl

theorem heapExt_updEntry {x : Nat} {a s : Reader} (h : HeapExt x a s) (p : Nat)
    (f : Entry → Entry)
    (hf : a.entries.length ≤ p ∨ (f (s.entry p)).m_uuid = (s.entry p).m_uuid) :
    HeapExt x a (s.updEntry p f) := by
  refine h.next (by simp) (by simp) (fun q _ _ => by rw [group_updEntry]) ?_
    (fun u p hp => by simpa using hp) (fun u p hp => by simpa using hp)
    (fun u p hp => Or.inl (by simpa using hp)) (fun u p hp => Or.inl (by simpa using hp))
    (by simp [Reader.hasError]) (by simp)
  intro q hq
  rw [entry_updEntry]
  split
  · rename_i hc
    rcases hf with h1 | h1
    · omega
    · rw [hc.1]
      exact h1
  · rfl

theorem heapExt_getGroup {x : Nat} {a s : Reader} (h : HeapExt x a s) (u : Uuid) :
    HeapExt x a (getGroup u s).2 := by
  obtain ⟨e1, e2, e3, e4, e5, e6⟩ := getGroup_effect u s
  refine h.next e1 (by simp) (fun q hq _ => e2 q (lt_of_lt_of_le hq h.glen))
    (fun q _ => by simp [Reader.entry]) e5 (fun u p hp => by simpa using hp) ?_
    (fun u p hp => Or.inl (by simpa using hp)) (by rw [hasError_getGroup]; exact fun e => e)
    (by simp)
  intro v p hp
  rcases e6 v p hp with h1 | h1
  · exact Or.inl h1
  · exact Or.inr (le_of_eq h1.1.symm)

theorem heapExt_getEntry {x : Nat} {a s : Reader} (h : HeapExt x a s) (u : Uuid) :
    HeapExt x a (getEntry u s).2 := by
  obtain ⟨e1, e2, e3, e4, e5, e6, e7, e8, e9⟩ := getEntry_effect u s
  refine h.next (by rw [e1]) e2 (fun q _ _ => e3 q)
    (fun q hq => e6 q (lt_of_lt_of_le hq h.elen)) (fun u p hp => by simpa using hp) e8
    (fun u p hp => Or.inl (by simpa using hp)) ?_
    (by rw [hasError_getEntry]; exact fun e => e) (by simp)
  intro v p hp
  rcases e9 v p hp with h1 | h1
  · exact Or.inl h1
  · exact Or.inr (le_of_eq h1.1.symm)

theorem heapExt_setParent {x : Nat} {a s : Reader} (h : HeapExt x a s) (c p : Nat) :
    HeapExt x a (s.setParent c p) :=
  h.next (by simp) (by simp) (fun q _ _ => (setParent_effect s c p).2.2 q)
    (fun q _ => by simp [Reader.entry]) (fun u p hp => by simpa using hp)
    (fun u p hp => by simpa using hp) (fun u p hp => Or.inl (by simpa using hp))
    (fun u p hp => Or.inl (by simpa using hp)) (by simp [Reader.hasError]) (by simp)

theorem heapExt_setGroup {x : Nat} {a s : Reader} (h : HeapExt x a s) (e p : Nat) :
    HeapExt x a (s.setGroup e p) :=
  h.next (by simp) (by simp) (fun q _ _ => (setGroup_effect s e p).2.2.1 q)
    (fun q _ => (setGroup_effect s e p).2.2.2.1 q) (fun u p hp => by simpa using hp)
    (fun u p hp => by simpa using hp) (fun u p hp => Or.inl (by simpa using hp))
    (fun u p hp => Or.inl (by simpa using hp)) (by simp [Reader.hasError]) (by simp)

theorem heapExt_setRootGroup {x : Nat} {a s : Reader} (h : HeapExt x a s) (p : Nat) :
    HeapExt x a (s.setRootGroup p) :=
  h.next (by simp) (by simp [Reader.setRootGroup]) (fun q _ _ => (setRootGroup_effect s p).2.2 q)
    (fun q _ => by simp [Reader.entry, Reader.setRootGroup])
    (fun u p hp => by simpa using hp)
    (fun u p hp => by simpa [Reader.setRootGroup] using hp)
    (fun u p hp => Or.inl (by simpa using hp))
    (fun u p hp => Or.inl (by simpa [Reader.setRootGroup] using hp))
    (by simp [Reader.hasError, Reader.setRootGroup]) (by simp)

theorem heapExt_newGroup {x : Nat} {a s : Reader} (h : HeapExt x a s) :
    HeapExt x a s.newGroup.2 :=
  h.next (by simp [Reader.newGroup]) (le_refl _) (fun q _ _ => by rw [group_newGroup])
    (fun q _ => rfl) (fun u p hp => hp) (fun u p hp => hp) (fun u p hp => Or.inl hp)
    (fun u p hp => Or.inl hp) (fun e => e) rfl

theorem heapExt_newEntry {x : Nat} {a s : Reader} (h : HeapExt x a s) :
    HeapExt x a s.newEntry.2 :=
  h.next (le_refl _) (by simp [Reader.newEntry]) (fun q _ _ => rfl)
    (fun q _ => by rw [entry_newEntry]) (fun u p hp => hp) (fun u p hp => hp)
    (fun u p hp => Or.inl hp) (fun u p hp => Or.inl hp) (fun e => e) rfl

theorem freshG_ext {x : Nat} {a s : Reader} {t : Nat} (h : FreshG a t) (hx : HeapExt x a s) :
    FreshG s t := by
  refine ⟨lt_of_lt_of_le h.lt hx.glen, ?_⟩
  intro u hu
  rcases hx.gnew u t hu with h1 | h1
  · exact h.unreg u h1
  · have := h.lt
    omega

theorem localsOk_ext {x : Nat} {a s : Reader} {l : GroupLocals} (h : LocalsOk a l)
    (hx : HeapExt x a s) : LocalsOk s l := by
  intro hs
  have ha : a.hasError = false := by
    by_contra ha
    have := hx.err (by simpa using ha)
    rw [hs] at this
    cases this
  obtain ⟨h1, h2⟩ := h ha
  refine ⟨?_, ?_⟩
  · intro c hc
    obtain ⟨u, hu⟩ := h1 c hc
    exact ⟨u, hx.greg u c hu⟩
  · intro e he
    obtain ⟨u, hu⟩ := h2 e he
    exact ⟨u, hx.ereg u e hu⟩

theorem heapInv_updGroup_fresh {st : Reader} (h : HeapInv st) {t : Nat}
    (ht : ∀ u, mapGet u st.m_groups ≠ some t) (f : DbGroup → DbGroup)
    (hf : ∀ g, (f g).links = g.links) : HeapInv (st.updGroup t f) := by
  have hc : ∀ q, ((st.updGroup t f).group q).links = (st.group q).links := by
    intro q
    rw [group_updGroup]
    split
    · rename_i hq
      rw [hf, hq.1]
    · rfl
  refine h.step (by simp) (by simp) (fun u p hp => Or.inl (by simpa using hp)) ?_
    (fun u p hp => Or.inl (by simpa using hp)) (fun u e _ => by rw [entry_updGroup])
    (fun e => by rw [entry_updGroup]) (fun e x _ => by rw [entry_updGroup, entry_updGroup]; exact ⟨rfl, rfl⟩)
    ?_ ?_ (fun u p hp => by simpa using hp) (fun u p hp => by simpa using hp) (by simp)
    (by simp [Reader.hasError])
  · intro u p hp
    rw [group_updGroup]
    split
    · rename_i hq
      rw [hq.1] at hp
      exact absurd hp (ht u)
    · rfl
  · intro _ p c hc1
    have := congrArg (fun x => x.2.1) (hc p)
    simp only [DbGroup.links] at this
    rw [this] at hc1
    exact Or.inl hc1
  · intro _ p c hc1
    have := congrArg (fun x => x.2.2) (hc p)
    simp only [DbGroup.links] at this
    rw [this] at hc1
    exact Or.inl hc1

theorem heapInv_updEntry_fresh {st : Reader} (h : HeapInv st) {t : Nat} (ht : FreshE st t)
    (f : Entry → Entry) (hf : ∀ e, (f e).m_history = e.m_history) :
    HeapInv (st.updEntry t f) := by
  have hh : ∀ q, ((st.updEntry t f).entry q).m_history = (st.entry q).m_history := by
    intro q
    rw [entry_updEntry]
    split
    · rename_i hq
      rw [hf, hq.1]
    · rfl
  have hu : ∀ q, q ≠ t → ((st.updEntry t f).entry q) = (st.entry q) := by
    intro q hq
    rw [entry_updEntry]
    split
    · rename_i hc
      exact absurd hc.1 hq
    · rfl
  refine h.step (by simp) (by simp) (fun u p hp => Or.inl (by simpa using hp))
    (fun u p _ => by rw [group_updEntry]) (fun u p hp => Or.inl (by simpa using hp)) ?_ hh ?_
    (fun _ p c hc => Or.inl (by rw [group_updEntry] at hc; exact hc))
    (fun _ p c hc => Or.inl (by rw [group_updEntry] at hc; exact hc))
    (fun u p hp => by simpa using hp) (fun u p hp => by simpa using hp) (by simp)
    (by simp [Reader.hasError])
  · intro u e he
    rw [hu e]
    intro e1
    rw [e1] at he
    exact ht.unreg u he
  · intro e x hx
    have hx1 : x ≠ t := by
      intro e1
      rw [e1] at hx
      exact ht.unhist e hx
    have he1 : e ≠ t := by
      intro e1
      rw [e1, ht.nil] at hx
      cases hx
    rw [hu x hx1, hu e he1]
    exact ⟨rfl, rfl⟩

/-- Entries under construction stay so through a step that adds nothing to a
history and registers only objects made since. -/
theorem freshE_of_step {st r : Reader} {t : Nat} (h : FreshE st t)
    (hlen : st.entries.length ≤ r.entries.length)
    (hist : ∀ e, (r.entry e).m_history = (st.entry e).m_history)
    (hreg : ∀ u e, mapGet u r.m_entries = some e →
      mapGet u st.m_entries = some e ∨ st.entries.length ≤ e) : FreshE r t := by
  refine ⟨lt_of_lt_of_le h.lt hlen, by rw [hist]; exact h.nil, ?_, ?_⟩
  · intro e he
    rw [hist] at he
    exact h.unhist e he
  · intro u hu
    rcases hreg u t hu with h1 | h1
    · exact h.unreg u h1
    · have := h.lt
      omega

theorem heapInv_newEntry {st : Reader} (h : HeapInv st) :
    HeapInv st.newEntry.2 ∧ FreshE st.newEntry.2 st.entries.length := by
  constructor
  · refine h.step (le_refl _) (by simp [Reader.newEntry]) (fun u p hp => Or.inl hp)
      (fun u p _ => rfl) (fun u p hp => Or.inl hp) (fun u e _ => by rw [entry_newEntry])
      (fun e => by rw [entry_newEntry])
      (fun e x _ => by rw [entry_newEntry, entry_newEntry]; exact ⟨rfl, rfl⟩)
      (fun _ p c hc => Or.inl hc) (fun _ p c hc => Or.inl hc) (fun u p hp => hp)
      (fun u p hp => hp) rfl (fun e => e)
  · refine ⟨by simp [Reader.newEntry], ?_, ?_, ?_⟩
    · rw [entry_newEntry, entry_of_ge (le_refl _)]
      rfl
    · intro e he
      rw [entry_newEntry] at he
      have := h.hist_lt e _ he
      omega
    · intro u hu
      have := h.ereg_lt u _ hu
      omega

theorem heapInv_newGroup {st : Reader} (h : HeapInv st) :
    HeapInv st.newGroup.2 ∧ FreshG st.newGroup.2 st.groups.length := by
  constructor
  · refine h.step (by simp [Reader.newGroup]) (le_refl _) (fun u p hp => Or.inl hp)
      (fun u p _ => by rw [group_newGroup]) (fun u p hp => Or.inl hp) (fun u e _ => rfl)
      (fun e => rfl) (fun e x _ => ⟨rfl, rfl⟩)
      (fun _ p c hc => Or.inl (by rw [group_newGroup] at hc; exact hc))
      (fun _ p c hc => Or.inl (by rw [group_newGroup] at hc; exact hc)) (fun u p hp => hp)
      (fun u p hp => hp) rfl (fun e => e)
  · refine ⟨by simp [Reader.newGroup], ?_⟩
    intro u hu
    have := h.greg_lt u _ hu
    omega

theorem heapInv_setParent {st : Reader} (h : HeapInv st) (c p : Nat)
    (hc : st.hasError = false → ∃ u, mapGet u st.m_groups = some c) :
    HeapInv (st.setParent c p) := by
  obtain ⟨e1, e2, e3⟩ := setParent_effect st c p
  have hE : (st.setParent c p).hasError = st.hasError := by simp [Reader.hasError]
  refine h.step (by simp) (by simp) (fun u p hp => Or.inl (by simpa using hp))
    (fun u p _ => e3 p) (fun u p hp => Or.inl (by simpa using hp))
    (fun u e _ => by simp [Reader.entry]) (fun e => by simp [Reader.entry])
    (fun e x _ => by simp [Reader.entry]) ?_ ?_ (fun u p hp => by simpa using hp)
    (fun u p hp => by simpa using hp) (by simp) (by rw [hE]; exact fun e => e)
  · intro hr q x hx
    rcases e1 q x hx with h1 | h1
    · exact Or.inl h1
    · rw [hE] at hr
      obtain ⟨u, hu⟩ := hc hr
      exact Or.inr ⟨u, by rw [h1]; simpa using hu⟩
  · intro _ q x hx
    rw [e2] at hx
    exact Or.inl hx

theorem heapInv_setGroup {st : Reader} (h : HeapInv st) (e p : Nat)
    (hc : st.hasError = false → ∃ u, mapGet u st.m_entries = some e) :
    HeapInv (st.setGroup e p) := by
  obtain ⟨e1, e2, e3, e4, e5⟩ := setGroup_effect st e p
  have hE : (st.setGroup e p).hasError = st.hasError := by simp [Reader.hasError]
  refine h.step (by simp) (by simp) (fun u p hp => Or.inl (by simpa using hp))
    (fun u p _ => e3 p) (fun u p hp => Or.inl (by simpa using hp))
    (fun u q _ => e4 q) e5 (fun q x _ => ⟨e4 x, e4 q⟩) ?_ ?_
    (fun u p hp => by simpa using hp) (fun u p hp => by simpa using hp) (by simp)
    (by rw [hE]; exact fun e => e)
  · intro _ q x hx
    rw [e2] at hx
    exact Or.inl hx
  · intro hr q x hx
    rcases e1 q x hx with h1 | h1
    · exact Or.inl h1
    · rw [hE] at hr
      obtain ⟨u, hu⟩ := hc hr
      exact Or.inr ⟨u, by rw [h1]; simpa using hu⟩

theorem heapInv_setRootGroup {st : Reader} (h : HeapInv st) (p : Nat) :
    HeapInv (st.setRootGroup p) := by
  obtain ⟨e1, e2, e3⟩ := setRootGroup_effect st p
  have hE : (st.setRootGroup p).hasError = st.hasError := by
    simp [Reader.hasError, Reader.setRootGroup]
  have hen : (st.setRootGroup p).entries = st.entries := by simp [Reader.setRootGroup]
  have hme : (st.setRootGroup p).m_entries = st.m_entries := by simp [Reader.setRootGroup]
  have hent : ∀ q, (st.setRootGroup p).entry q = st.entry q := fun q => by
    unfold Reader.entry
    rw [hen]
  refine h.step (by simp) (by rw [hen]) (fun u p hp => Or.inl (by simpa using hp))
    (fun u p _ => e3 p) (fun u p hp => Or.inl (by rw [hme] at hp; exact hp))
    (fun u q _ => by rw [hent]) (fun q => by rw [hent])
    (fun q x _ => by rw [hent, hent]; exact ⟨rfl, rfl⟩) ?_ ?_
    (fun u p hp => by simpa using hp) (fun u p hp => by rw [hme]; exact hp) (by simp)
    (by rw [hE]; exact fun e => e)
  · intro _ q x hx
    exact Or.inl (e1 q x hx)
  · intro _ q x hx
    rw [e2] at hx
    exact Or.inl hx

theorem hasError_foldl {α : Type} {f : Reader → α → Reader}
    (hf : ∀ s a, (f s a).hasError = s.hasError) (xs : List α) (s : Reader) :
    (xs.foldl f s).hasError = s.hasError :=
  foldl_obs (fun s => s.hasError) hf xs s

theorem m_groups_foldl {α : Type} {f : Reader → α → Reader}
    (hf : ∀ s a, (f s a).m_groups = s.m_groups) (xs : List α) (s : Reader) :
    (xs.foldl f s).m_groups = s.m_groups :=
  foldl_obs (fun s => s.m_groups) hf xs s

/-- The adoption of the child groups read by a `Group` element. -/
theorem heapInv_adoptGroups {x : Nat} {a : Reader} (cs : List Nat) (g : Nat) (st : Reader)
    (h : HeapInv st) (hx : HeapExt x a st)
    (hc : st.hasError = false → ∀ c ∈ cs, ∃ u, mapGet u st.m_groups = some c) :
    HeapInv (cs.foldl (fun s child => s.setParent child g) st) ∧
      HeapExt x a (cs.foldl (fun s child => s.setParent child g) st) := by
  induction cs generalizing st with
  | nil => exact ⟨h, hx⟩
  | cons c rest ih =>
    rw [List.foldl_cons]
    apply ih
    · exact heapInv_setParent h c g (fun he => (hc he) c (List.mem_cons_self _ _))
    · exact heapExt_setParent hx c g
    · intro he c1 hc1
      have he1 : st.hasError = false := by simpa [Reader.hasError] using he
      obtain ⟨u, hu⟩ := hc he1 c1 (List.mem_cons_of_mem _ hc1)
      exact ⟨u, by simpa using hu⟩

/-- The adoption of the entries read by a `Group` element. -/
theorem heapInv_adoptEntries {x : Nat} {a : Reader} (es : List Nat) (g : Nat) (st : Reader)
    (h : HeapInv st) (hx : HeapExt x a st)
    (hc : st.hasError = false → ∀ e ∈ es, ∃ u, mapGet u st.m_entries = some e) :
    HeapInv (es.foldl (fun s entry => s.setGroup entry g) st) ∧
      HeapExt x a (es.foldl (fun s entry => s.setGroup entry g) st) := by
  induction es generalizing st with
  | nil => exact ⟨h, hx⟩
  | cons c rest ih =>
    rw [List.foldl_cons]
    apply ih
    · exact heapInv_setGroup h c g (fun he => (hc he) c (List.mem_cons_self _ _))
    · exact heapExt_setGroup hx c g
    · intro he c1 hc1
      have he1 : st.hasError = false := by simpa [Reader.hasError] using he
      obtain ⟨u, hu⟩ := hc he1 c1 (List.mem_cons_of_mem _ hc1)
      exact ⟨u, by simpa using hu⟩


theorem heapInv_addHistoryItem {st : Reader} (h : HeapInv st) {e x : Nat}
    (he : ∀ q, e ∉ (st.entry q).m_history) (hx : ItemOk st e x)
    (hu : st.m_strictMode = false → (st.entry x).m_uuid = (st.entry e).m_uuid) :
    HeapInv (st.updEntry e (fun y => { y with m_history := y.m_history ++ [x] })) := by
  have hent : ∀ q, q ≠ e → (st.updEntry e
      (fun y => { y with m_history := y.m_history ++ [x] })).entry q = st.entry q := by
    intro q hq
    rw [entry_updEntry]
    split
    · rename_i hc
      exact absurd hc.1 hq
    · rfl
  have hid : ∀ q, ((st.updEntry e
      (fun y => { y with m_history := y.m_history ++ [x] })).entry q).m_uuid =
      (st.entry q).m_uuid := by
    intro q
    rw [entry_updEntry]
    split
    · rename_i hc
      rw [hc.1]
    · rfl
  have hh : ∀ q y, y ∈ ((st.updEntry e
      (fun y => { y with m_history := y.m_history ++ [x] })).entry q).m_history →
      y ∈ (st.entry q).m_history ∨ (q = e ∧ y = x) := by
    intro q y hy
    rw [entry_updEntry] at hy
    split at hy
    · rename_i hc
      simp only [List.mem_append, List.mem_singleton] at hy
      rcases hy with hy | hy
      · exact Or.inl (hc.1 ▸ hy)
      · exact Or.inr ⟨hc.1, hy⟩
    · exact Or.inl hy
  have hne : ∀ q y, y ∈ (st.entry q).m_history → y ≠ e := by
    intro q y hy e1
    rw [e1] at hy
    exact he q hy
  constructor
  · intro u p hp
    simpa using h.greg_lt u p (by simpa using hp)
  · intro u p hp
    rw [group_updEntry]
    exact h.greg_uuid u p (by simpa using hp)
  · intro u p hp
    simpa using h.ereg_lt u p (by simpa using hp)
  · intro u p hp
    rw [hid]
    exact h.ereg_uuid u p (by simpa using hp)
  · intro q y hy
    rw [Reader.updEntry_entries_length]
    rcases hh q y hy with h1 | h1
    · exact h.hist_lt q y h1
    · rw [h1.2]
      exact hx.lt
  · intro q y hy
    rcases hh q y hy with h1 | h1
    · rw [hent y (hne q y h1)]
      exact h.hist_nil q y h1
    · rw [h1.2, hent x hx.ne]
      exact hx.nil
  · intro q y hy u hu1
    have hu2 : mapGet u st.m_entries = some y := by simpa using hu1
    rcases hh q y hy with h1 | h1
    · exact h.hist_unreg q y h1 u hu2
    · rw [h1.2] at hu2
      exact hx.unreg u hu2
  · intro hs q y hy
    have hs1 : st.m_strictMode = false := by simpa using hs
    rw [hid, hid]
    rcases hh q y hy with h1 | h1
    · exact h.hist_uuid hs1 q y h1
    · rw [h1.1, h1.2]
      exact hu hs1
  · intro hr p c hc
    have hr1 : st.hasError = false := by simpa [Reader.hasError] using hr
    rw [group_updEntry] at hc
    obtain ⟨u, hu1⟩ := h.kids hr1 p c hc
    exact ⟨u, by simpa using hu1⟩
  · intro hr p c hc
    have hr1 : st.hasError = false := by simpa [Reader.hasError] using hr
    rw [group_updEntry] at hc
    obtain ⟨u, hu1⟩ := h.ents hr1 p c hc
    exact ⟨u, by simpa using hu1⟩

/-- Giving a history item the UUID of its owner. -/
theorem heapInv_setItemUuid {st : Reader} (h : HeapInv st) {e x : Nat} (hx : ItemOk st e x) :
    HeapInv (st.updEntry x (fun y => { y with m_uuid := (st.entry e).m_uuid })) := by
  have hent : ∀ q, q ≠ x → (st.updEntry x
      (fun y => { y with m_uuid := (st.entry e).m_uuid })).entry q = st.entry q := by
    intro q hq
    rw [entry_updEntry]
    split
    · rename_i hc
      exact absurd hc.1 hq
    · rfl
  have hh : ∀ q, ((st.updEntry x
      (fun y => { y with m_uuid := (st.entry e).m_uuid })).entry q).m_history =
      (st.entry q).m_history := by
    intro q
    rw [entry_updEntry]
    split
    · rename_i hc
      rw [hc.1]
    · rfl
  have hxu : ((st.updEntry x
      (fun y => { y with m_uuid := (st.entry e).m_uuid })).entry x).m_uuid =
      (st.entry e).m_uuid := by
    rw [entry_updEntry, if_pos ⟨rfl, hx.lt⟩]
  constructor
  · intro u p hp
    simpa using h.greg_lt u p (by simpa using hp)
  · intro u p hp
    rw [group_updEntry]
    exact h.greg_uuid u p (by simpa using hp)
  · intro u p hp
    simpa using h.ereg_lt u p (by simpa using hp)
  · intro u p hp
    have hp1 : mapGet u st.m_entries = some p := by simpa using hp
    have hpx : p ≠ x := by
      intro e1
      rw [e1] at hp1
      exact hx.unreg u hp1
    rw [hent p hpx]
    exact h.ereg_uuid u p hp1
  · intro q y hy
    rw [Reader.updEntry_entries_length]
    rw [hh] at hy
    exact h.hist_lt q y hy
  · intro q y hy
    rw [hh] at hy
    rw [hh]
    exact h.hist_nil q y hy
  · intro q y hy u hu1
    rw [hh] at hy
    exact h.hist_unreg q y hy u (by simpa using hu1)
  · intro hs q y hy
    have hs1 : st.m_strictMode = false := by simpa using hs
    rw [hh] at hy
    have hqx : q ≠ x := by
      intro e1
      rw [e1, hx.nil] at hy
      cases hy
    rw [hent q hqx]
    by_cases hyx : y = x
    · rw [hyx, hxu]
      rw [hyx] at hy
      rw [hx.own q hy]
    · rw [hent y hyx]
      exact h.hist_uuid hs1 q y hy
  · intro hr p c hc
    have hr1 : st.hasError = false := by simpa [Reader.hasError] using hr
    rw [group_updEntry] at hc
    obtain ⟨u, hu1⟩ := h.kids hr1 p c hc
    exact ⟨u, by simpa using hu1⟩
  · intro hr p c hc
    have hr1 : st.hasError = false := by simpa [Reader.hasError] using hr
    rw [group_updEntry] at hc
    obtain ⟨u, hu1⟩ := h.ents hr1 p c hc
    exact ⟨u, by simpa using hu1⟩


theorem history_setUuid (st : Reader) (x q : Nat) (u : Uuid) :
    ((st.updEntry x (fun y => { y with m_uuid := u })).entry q).m_history =
      (st.entry q).m_history := by
  rw [entry_updEntry]
  split
  · rename_i hc
    rw [hc.1]
  · rfl

theorem history_addItem (st : Reader) (e x q y : Nat)
    (hy : y ∈ ((st.updEntry e (fun z => { z with m_history := z.m_history ++ [x] })).entry q).m_history) :
    y ∈ (st.entry q).m_history ∨ (q = e ∧ y = x) := by
  rw [entry_updEntry] at hy
  split at hy
  · rename_i hc
    simp only [List.mem_append, List.mem_singleton] at hy
    rcases hy with hy | hy
    · exact Or.inl (hc.1 ▸ hy)
    · exact Or.inr ⟨hc.1, hy⟩
  · exact Or.inl hy

theorem history_addItem_ne (st : Reader) (e x q : Nat) (hq : q ≠ e) :
    ((st.updEntry e (fun z => { z with m_history := z.m_history ++ [x] })).entry q).m_history =
      (st.entry q).m_history := by
  rw [entry_updEntry]
  split
  · rename_i hc
    exact absurd hc.1 hq
  · rfl

theorem itemOk_step {s r : Reader} {e x : Nat} (hi : ItemOk s e x)
    (hlen : r.entries.length = s.entries.length) (hreg : r.m_entries = s.m_entries)
    (hh : ∀ q y, y ∈ (r.entry q).m_history → y ∈ (s.entry q).m_history ∨ q = e)
    (hn : (r.entry x).m_history = (s.entry x).m_history) : ItemOk r e x := by
  constructor
  · rw [hlen]
    exact hi.lt
  · rw [hn]
    exact hi.nil
  · rw [hreg]
    exact hi.unreg
  · exact hi.ne
  · intro q hq
    rcases hh q x hq with h1 | h1
    · exact hi.own q h1
    · exact h1

theorem addHistoryItems_cons (entry h : Nat) (rest : List Nat) (st : Reader) :
    addHistoryItems entry (h :: rest) st =
      addHistoryItems entry rest (addHistoryItem entry h st) := rfl

theorem heapInv_addHistoryItem_round {x : Nat} {a st : Reader} (h : HeapInv st) (hx : HeapExt x a st)
    {e i : Nat} (he : ∀ q, e ∉ (st.entry q).m_history) (hi : ItemOk st e i)
    (hn : a.entries.length ≤ i) :
    HeapInv (addHistoryItem e i st) ∧ HeapExt x a (addHistoryItem e i st) ∧
      (addHistoryItem e i st).entries.length = st.entries.length ∧
      (addHistoryItem e i st).m_entries = st.m_entries ∧
      (∀ q y, y ∈ ((addHistoryItem e i st).entry q).m_history →
        y ∈ (st.entry q).m_history ∨ (q = e ∧ y = i)) ∧
      (∀ q, q ≠ e → ((addHistoryItem e i st).entry q).m_history = (st.entry q).m_history) := by
  unfold addHistoryItem
  by_cases hu : (st.entry i).m_uuid ≠ (st.entry e).m_uuid
  · rw [if_pos hu]
    cases hs : st.m_strictMode
    · rw [if_neg (by simp)]
      have h1 := heapInv_setItemUuid h hi
      have hi1 : ItemOk (st.updEntry i (fun y => { y with m_uuid := (st.entry e).m_uuid })) e i :=
        itemOk_step hi (by simp) (by simp)
          (fun q y hy => Or.inl (by rw [history_setUuid] at hy; exact hy))
          (history_setUuid _ _ _ _)
      have he1 : ∀ q, e ∉ ((st.updEntry i
          (fun y => { y with m_uuid := (st.entry e).m_uuid })).entry q).m_history := by
        intro q
        rw [history_setUuid]
        exact he q
      have hx1 := heapExt_updEntry hx i (fun y => { y with m_uuid := (st.entry e).m_uuid })
        (Or.inl hn)
      refine ⟨heapInv_addHistoryItem h1 he1 hi1 ?_, heapExt_updEntry hx1 e _ (Or.inr rfl),
        by simp, by simp, ?_, ?_⟩
      · intro _
        rw [entry_updEntry, if_pos ⟨rfl, hi.lt⟩, entry_updEntry, if_neg (by
          intro hc
          exact hi.ne hc.1.symm)]
      · intro q y hy
        have := history_addItem _ _ _ _ _ hy
        rw [history_setUuid] at this
        exact this
      · intro q hq
        rw [history_addItem_ne _ _ _ _ hq, history_setUuid]
    · rw [if_pos rfl]
      have h1 : HeapInv (st.raiseError "History element with different uuid") :=
        h.of_same rfl rfl rfl rfl rfl (fun _ => by simp [Reader.hasError])
      have hi1 : ItemOk (st.raiseError "History element with different uuid") e i :=
        itemOk_step hi rfl rfl (fun q y hy => Or.inl hy) rfl
      have hx1 : HeapExt x a (st.raiseError "History element with different uuid") :=
        heapExt_of_same hx rfl rfl rfl rfl rfl (fun _ => by simp [Reader.hasError])
      refine ⟨heapInv_addHistoryItem h1 he hi1 ?_, heapExt_updEntry hx1 e _ (Or.inr rfl),
        by simp, by simp, ?_, ?_⟩
      · intro hc
        have : st.m_strictMode = false := hc
        rw [hs] at this
        cases this
      · intro q y hy
        exact history_addItem (st.raiseError "History element with different uuid") _ _ _ _ hy
      · intro q hq
        exact history_addItem_ne (st.raiseError "History element with different uuid") _ _ _ hq
  · rw [if_neg hu]
    refine ⟨heapInv_addHistoryItem h he hi ?_, heapExt_updEntry hx e _ (Or.inr rfl),
      by simp, by simp, ?_, ?_⟩
    · intro _
      exact not_not.mp hu
    · intro q y hy
      exact history_addItem _ _ _ _ _ hy
    · intro q hq
      exact history_addItem_ne _ _ _ _ hq

theorem heapInv_addHistoryItems {x : Nat} {a : Reader} (e : Nat) :
    ∀ (items : List Nat) (st : Reader), HeapInv st → HeapExt x a st →
      (∀ q, e ∉ (st.entry q).m_history) →
      (∀ i ∈ items, ItemOk st e i ∧ a.entries.length ≤ i) →
      HeapInv (addHistoryItems e items st) ∧ HeapExt x a (addHistoryItems e items st) ∧
        (addHistoryItems e items st).m_entries = st.m_entries := by
  intro items
  induction items with
  | nil =>
    intro st h hx _ _
    exact ⟨h, hx, rfl⟩
  | cons i rest ih =>
    intro st h hx he hi
    rw [addHistoryItems_cons]
    have hi0 := hi i (List.mem_cons_self _ _)
    obtain ⟨h1, hx1, hl, hr, hh, hne⟩ := heapInv_addHistoryItem_round h hx he hi0.1 hi0.2
    have := ih (addHistoryItem e i st) h1 hx1 (by
      intro q hq
      rcases hh q e hq with h2 | h2
      · exact he q h2
      · exact hi0.1.ne h2.2.symm) (by
      intro j hj
      have hj0 := hi j (List.mem_cons_of_mem _ hj)
      refine ⟨itemOk_step hj0.1 hl hr (fun q y hy => ?_) (hne j hj0.1.ne), hj0.2⟩
      rcases hh q y hy with h2 | h2
      · exact Or.inl h2
      · exact Or.inr h2.1)
    exact ⟨this.1, this.2.1, this.2.2.trans hr⟩

/-! ### The heaps through an `Entry` element -/

theorem stable_hasError : Stable (fun t => t.hasError = true) := by
  refine ⟨⟨?_, ?_, ?_, ?_, ?_, ?_, ?_, ?_, ?_, ?_, ?_, ?_, ?_⟩, ?_, ?_, ?_, ?_, ?_, ?_, ?_, ?_, ?_⟩ <;>
    intros <;> simp_all [Reader.hasError, Reader.raiseError, Reader.setMeta, Reader.newGroup,
      Reader.newEntry, Reader.randomUuid, Reader.cipherProcess]

theorem getEntry_some {u : Uuid} (st : Reader) (hu : u.isNull = false) :
    ∃ e, getEntry u st = (some e, (getEntry u st).2) ∧
      mapGet u (getEntry u st).2.m_entries = some e := by
  cases hm : mapGet u st.m_entries with
  | none =>
    rw [getEntry_new hu hm]
    exact ⟨_, rfl, by simp [mapGet_mapSet_self]⟩
  | some p =>
    rw [getEntry_old hu hm]
    exact ⟨p, rfl, by simpa using hm⟩

theorem getGroup_some {u : Uuid} (st : Reader) (hu : u.isNull = false) :
    ∃ e, getGroup u st = (some e, (getGroup u st).2) ∧
      mapGet u (getGroup u st).2.m_groups = some e := by
  cases hm : mapGet u st.m_groups with
  | none =>
    rw [getGroup_new hu hm]
    exact ⟨_, rfl, by simp [mapGet_mapSet_self]⟩
  | some p =>
    rw [getGroup_old hu hm]
    exact ⟨p, rfl, by simpa using hm⟩

/-- The random UUID of Lenient mode keeps the state of the heaps. -/
theorem ensureEntryUuid_heap {x : Nat} {a s : Reader} (env : Env) {t : Nat} (h : HeapInv s)
    (ht : FreshE s t) (hx : HeapExt x a s) (hn : a.entries.length ≤ t) :
    HeapInv (ensureEntryUuid env t s) ∧ HeapExt x a (ensureEntryUuid env t s) ∧
      (ensureEntryUuid env t s).entries.length = s.entries.length ∧
      (∀ q, ((ensureEntryUuid env t s).entry q).m_history = (s.entry q).m_history) ∧
      (ensureEntryUuid env t s).m_entries = s.m_entries := by
  unfold ensureEntryUuid
  split
  · have h1 : HeapInv (s.randomUuid env).2 :=
      h.of_same rfl rfl rfl rfl rfl (fun e => e)
    have ht1 : FreshE (s.randomUuid env).2 t := ⟨ht.lt, ht.nil, ht.unhist, ht.unreg⟩
    have hx1 : HeapExt x a (s.randomUuid env).2 :=
      heapExt_of_same hx rfl rfl rfl rfl rfl (fun e => e)
    refine ⟨heapInv_updEntry_fresh h1 ht1 _ (fun _ => rfl),
      heapExt_updEntry hx1 t _ (Or.inl hn), by simp [Reader.randomUuid], ?_,
      by simp [Reader.randomUuid]⟩
    intro q
    exact history_setUuid (s.randomUuid env).2 t q _
  · exact ⟨h, hx, rfl, fun _ => rfl, rfl⟩

theorem history_updEntry_of (st : Reader) (p q : Nat) (f : Entry → Entry)
    (hf : (f (st.entry p)).m_history = (st.entry p).m_history) :
    ((st.updEntry p f).entry q).m_history = (st.entry q).m_history := by
  rw [entry_updEntry]
  split
  · rename_i hc
    rw [hc.1]
    exact hf
  · rfl

theorem freshE_updEntry {st : Reader} {t : Nat} (h : FreshE st t) (p : Nat) (f : Entry → Entry)
    (hf : (f (st.entry p)).m_history = (st.entry p).m_history) : FreshE (st.updEntry p f) t :=
  freshE_of_step h (by simp) (fun e => history_updEntry_of st p e f hf)
    (fun u e he => Or.inl (by simpa using he))

theorem freshE_of_same {st r : Reader} {t : Nat} (h : FreshE st t) (h2 : r.entries = st.entries)
    (h4 : r.m_entries = st.m_entries) : FreshE r t :=
  freshE_of_step h (by rw [h2]) (fun e => by unfold Reader.entry; rw [h2])
    (fun u e he => Or.inl (h4 ▸ he))

theorem freshE_getEntry {st : Reader} {t : Nat} (h : FreshE st t) (u : Uuid) :
    FreshE (getEntry u st).2 t := by
  obtain ⟨e1, e2, e3, e4, e5, e6, e7, e8, e9⟩ := getEntry_effect u st
  refine freshE_of_step h e2 e7 ?_
  intro v p hp
  rcases e9 v p hp with h1 | h1
  · exact Or.inl h1
  · exact Or.inr (le_of_eq h1.1.symm)

theorem heapInv_updEntry_data {st : Reader} (h : HeapInv st) (p : Nat) (f : Entry → Entry)
    (hf : ∀ e, (f e).ident = e.ident) : HeapInv (st.updEntry p f) :=
  heapInv_updEntry_ident h p f (hf _)

theorem heapExt_updEntry_data {x : Nat} {a s : Reader} (h : HeapExt x a s) (p : Nat)
    (f : Entry → Entry) (hf : ∀ e, (f e).ident = e.ident) : HeapExt x a (s.updEntry p f) :=
  heapExt_updEntry h p f (Or.inr (congrArg (fun z => z.2.2) (hf _)))

theorem freshE_updEntry_data {st : Reader} {t : Nat} (h : FreshE st t) (p : Nat)
    (f : Entry → Entry) (hf : ∀ e, (f e).ident = e.ident) : FreshE (st.updEntry p f) t :=
  freshE_updEntry h p f (congrArg (fun z => z.2.1) (hf _))

theorem ensureEntryUuid_fresh (env : Env) {s : Reader} {t h : Nat} (hh : FreshE s h) :
    FreshE (ensureEntryUuid env t s) h := by
  unfold ensureEntryUuid
  split
  · show FreshE ((s.randomUuid env).2.updEntry t
      (fun e => { e with m_uuid := (s.randomUuid env).1 })) h
    exact freshE_updEntry (freshE_of_same hh rfl rfl : FreshE (s.randomUuid env).2 h) t
      (fun e => { e with m_uuid := (s.randomUuid env).1 }) rfl
  · exact hh

theorem copyDataFrom_ident (e other : Entry) (h : other.m_uuid = e.m_uuid) :
    (e.copyDataFrom other).ident = e.ident := by
  unfold Entry.ident Entry.copyDataFrom
  simp only [h]

theorem heapInv_deleteEntry {st : Reader} (h : HeapInv st) (t : Nat) :
    HeapInv (st.deleteEntry t) :=
  heapInv_updEntry_data h t (fun y => { y with deleted := true }) (fun _ => rfl)

theorem heapExt_deleteEntry {x : Nat} {a s : Reader} (h : HeapExt x a s) (t : Nat) :
    HeapExt x a (s.deleteEntry t) :=
  heapExt_updEntry_data h t (fun y => { y with deleted := true }) (fun _ => rfl)

theorem freshE_deleteEntry {st : Reader} {i : Nat} (h : FreshE st i) (t : Nat) :
    FreshE (st.deleteEntry t) i :=
  freshE_updEntry_data h t (fun y => { y with deleted := true }) (fun _ => rfl)

theorem heapInv_defEntry {st : Reader} (h : HeapInv st) (u : Uuid) (e : Nat) :
    HeapInv (st.defEntry u e) :=
  h.of_same rfl rfl rfl rfl rfl (fun z => z)

theorem heapExt_defEntry {x : Nat} {a s : Reader} (h : HeapExt x a s) (u : Uuid) (e : Nat) :
    HeapExt x a (s.defEntry u e) :=
  heapExt_of_same h rfl rfl rfl rfl rfl (fun z => z)

theorem freshE_defEntry {st : Reader} {i : Nat} (h : FreshE st i) (u : Uuid) (e : Nat) :
    FreshE (st.defEntry u e) i :=
  freshE_of_same h rfl rfl

theorem mergeEntry_some {t e : Nat} {s s1 : Reader} (hu : (s.entry t).m_uuid.isNull = false)
    (he : getEntry (s.entry t).m_uuid s = (some e, s1)) :
    mergeEntry false t s = (e, (((s1.updEntry e (fun y => y.copyDataFrom (s1.entry t))).updEntry e
      (fun y => { y with m_updateTimeinfo := false })).deleteEntry t).defEntry
        (s.entry t).m_uuid e) := by
  unfold mergeEntry
  rw [if_pos (by simp [hu]), if_neg (by simp), he]

theorem mergeEntry_body {x : Nat} {a s1 : Reader} {t e : Nat} (u : Uuid) (A : HeapInv s1)
    (X : HeapExt x a s1) (hid : (s1.entry t).m_uuid = (s1.entry e).m_uuid) :
    HeapInv ((((s1.updEntry e (fun y => y.copyDataFrom (s1.entry t))).updEntry e
      (fun y => { y with m_updateTimeinfo := false })).deleteEntry t).defEntry u e) ∧
    HeapExt x a ((((s1.updEntry e (fun y => y.copyDataFrom (s1.entry t))).updEntry e
      (fun y => { y with m_updateTimeinfo := false })).deleteEntry t).defEntry u e) ∧
    (∀ i, FreshE s1 i → FreshE ((((s1.updEntry e (fun y => y.copyDataFrom (s1.entry t))).updEntry e
      (fun y => { y with m_updateTimeinfo := false })).deleteEntry t).defEntry u e) i) ∧
    ((((s1.updEntry e (fun y => y.copyDataFrom (s1.entry t))).updEntry e
      (fun y => { y with m_updateTimeinfo := false })).deleteEntry t).defEntry u e).m_entries =
        s1.m_entries := by
  have B := heapInv_updEntry_ident A e (fun y => y.copyDataFrom (s1.entry t))
    (copyDataFrom_ident _ _ hid)
  have C := heapInv_updEntry_data B e (fun y => { y with m_updateTimeinfo := false })
    (fun _ => rfl)
  have D := heapInv_deleteEntry C t
  have XB := heapExt_updEntry X e (fun y => y.copyDataFrom (s1.entry t))
    (Or.inr (congrArg (fun z => z.2.2) (copyDataFrom_ident _ _ hid)))
  have XC := heapExt_updEntry_data XB e (fun y => { y with m_updateTimeinfo := false })
    (fun _ => rfl)
  have XD := heapExt_deleteEntry XC t
  refine ⟨heapInv_defEntry D u e, heapExt_defEntry XD u e, ?_, ?_⟩
  · intro i hi
    have F2 := freshE_updEntry hi e (fun y => y.copyDataFrom (s1.entry t))
      (congrArg (fun z => z.2.1) (copyDataFrom_ident _ _ hid))
    have F3 := freshE_updEntry_data F2 e (fun y => { y with m_updateTimeinfo := false })
      (fun _ => rfl)
    exact freshE_defEntry (freshE_deleteEntry F3 t) u e
  · simp only [Reader.defEntry, Reader.deleteEntry, Reader.updEntry_m_entries]

/-- The merge of a defining `Entry` element into the registry keeps the state of
the heaps; the entry kept is in the registry unless an error is raised. -/
theorem mergeEntry_heap {x : Nat} {a s : Reader} {t : Nat} (h : HeapInv s)
    (ht : FreshE s t) (hx : HeapExt x a s) :
    HeapInv (mergeEntry false t s).2 ∧ HeapExt x a (mergeEntry false t s).2 ∧
      (∀ i, FreshE s i → FreshE (mergeEntry false t s).2 i) ∧
      (((mergeEntry false t s).1 = t ∧ (mergeEntry false t s).2.hasError = true) ∨
        ∃ u, mapGet u (mergeEntry false t s).2.m_entries = some (mergeEntry false t s).1) := by
  cases hu : (s.entry t).m_uuid.isNull with
  | false =>
    obtain ⟨e, he1, he2⟩ := getEntry_some s hu
    have A := heapInv_getEntry h (s.entry t).m_uuid
    have X := heapExt_getEntry hx (s.entry t).m_uuid
    obtain ⟨e1, e2, e3, e4, e5, e6, e7, e8, e9⟩ := getEntry_effect (s.entry t).m_uuid s
    have hid : ((getEntry (s.entry t).m_uuid s).2.entry t).m_uuid =
        ((getEntry (s.entry t).m_uuid s).2.entry e).m_uuid := by
      rw [e6 t ht.lt, (A.ereg_uuid _ e he2).1]
    rw [mergeEntry_some hu he1]
    obtain ⟨b1, b2, b3, b4⟩ := mergeEntry_body (s.entry t).m_uuid A X hid
    refine ⟨b1, b2, fun i hi => b3 i (freshE_getEntry hi _), Or.inr ⟨(s.entry t).m_uuid, ?_⟩⟩
    show mapGet _ (Reader.m_entries _) = some e
    rw [b4]
    exact he2
  | true =>
    unfold mergeEntry
    rw [if_neg (by simp [hu])]
    cases hr : s.hasError with
    | false =>
      rw [if_pos (by simp)]
      exact ⟨h.of_same rfl rfl rfl rfl rfl (fun _ => hasError_raiseError _ _),
        heapExt_of_same hx rfl rfl rfl rfl rfl (fun _ => hasError_raiseError _ _),
        fun i hi => freshE_of_same hi rfl rfl, Or.inl ⟨rfl, hasError_raiseError _ _⟩⟩
    | true =>
      rw [if_neg (by simp)]
      exact ⟨h, hx, fun i hi => hi, Or.inl ⟨rfl, hr⟩⟩

theorem parseEntryFinish_parts (env : Env) (history : Bool) (l : EntryLocals) (st : Reader) :
    parseEntryFinish env history l st =
      ((mergeEntry history l.entry (ensureEntryUuid env l.entry st)).1,
        (addHistoryItems (mergeEntry history l.entry (ensureEntryUuid env l.entry st)).1
          l.historyItems (mergeEntry history l.entry (ensureEntryUuid env l.entry st)).2).addBinaryRefs
          (l.binaryRefs.map (fun ref =>
            (ref.1, (mergeEntry history l.entry (ensureEntryUuid env l.entry st)).1, ref.2)))) := rfl

theorem heapInv_addBinaryRefs {st : Reader} (h : HeapInv st) (v : List (String × Nat × String)) :
    HeapInv (st.addBinaryRefs v) :=
  h.of_same rfl rfl rfl rfl rfl (fun z => z)

theorem heapExt_addBinaryRefs {x : Nat} {a s : Reader} (h : HeapExt x a s)
    (v : List (String × Nat × String)) : HeapExt x a (s.addBinaryRefs v) :=
  heapExt_of_same h rfl rfl rfl rfl rfl (fun z => z)

/-- The code of `parseEntry` after its loop, for an entry that is no history
item: the state of the heaps is kept, and the entry returned is in the registry
unless an error is raised. -/
theorem parseEntryFinish_heap {x : Nat} {a st : Reader} (env : Env) (l : EntryLocals)
    (h : HeapInv st) (ht : FreshE st l.entry) (hx : HeapExt x a st)
    (hn : a.entries.length ≤ l.entry)
    (hi : ∀ i ∈ l.historyItems, FreshE st i ∧ i ≠ l.entry ∧ a.entries.length ≤ i) :
    HeapInv (parseEntryFinish env false l st).2 ∧ HeapExt x a (parseEntryFinish env false l st).2 ∧
      ((parseEntryFinish env false l st).2.hasError = false →
        ∃ u, mapGet u (parseEntryFinish env false l st).2.m_entries =
          some (parseEntryFinish env false l st).1) := by
  rw [parseEntryFinish_parts]
  obtain ⟨E1, E2, _, _, _⟩ := ensureEntryUuid_heap env h ht hx hn
  have T1 : FreshE (ensureEntryUuid env l.entry st) l.entry := ensureEntryUuid_fresh env ht
  obtain ⟨m1, m2, m3, m4⟩ := mergeEntry_heap E1 T1 E2
  generalize mergeEntry false l.entry (ensureEntryUuid env l.entry st) = M at m1 m2 m3 m4
  have he : ∀ q, M.1 ∉ (M.2.entry q).m_history := by
    intro q hq
    rcases m4 with m4 | ⟨u, hu⟩
    · rw [m4.1] at hq
      exact (m3 _ T1).unhist q hq
    · exact m1.hist_unreg q _ hq u hu
  have hitems : ∀ i ∈ l.historyItems, ItemOk M.2 M.1 i ∧ a.entries.length ≤ i := by
    intro i hm
    have F := m3 i (ensureEntryUuid_fresh env (hi i hm).1)
    refine ⟨⟨F.lt, F.nil, F.unreg, ?_, fun q hq => absurd hq (F.unhist q)⟩, (hi i hm).2.2⟩
    intro e1
    rcases m4 with m4 | ⟨u, hu⟩
    · exact (hi i hm).2.1 (e1.trans m4.1)
    · rw [← e1] at hu
      exact F.unreg u hu
  obtain ⟨k1, k2, k3⟩ := heapInv_addHistoryItems M.1 l.historyItems M.2 m1 m2 he hitems
  refine ⟨heapInv_addBinaryRefs k1 _, heapExt_addBinaryRefs k2 _, ?_⟩
  intro hr
  rcases m4 with m4 | ⟨u, hu⟩
  · exfalso
    have : (addHistoryItems M.1 l.historyItems M.2).hasError = true :=
      addHistoryItems_stable stable_hasError.1 m4.2
    have e2 : ((addHistoryItems M.1 l.historyItems M.2).addBinaryRefs
        (l.binaryRefs.map (fun ref => (ref.1, M.1, ref.2)))).hasError = true := this
    rw [hr] at e2
    cases e2
  · refine ⟨u, ?_⟩
    show mapGet u (addHistoryItems M.1 l.historyItems M.2).m_entries = some M.1
    rw [k3]
    exact hu

/-- Reading child elements of a fresh entry and history entries keeps the state
of the heaps. -/
theorem heapInv_of_entryFrame {st r : Reader} {t : Nat} (h : HeapInv st) (ht : FreshE st t)
    (f : EntryFrame t st r) : HeapInv r ∧ FreshE r t ∧
      (∀ i, st.entries.length ≤ i → i < r.entries.length → FreshE r i) := by
  have hg : ∀ p, r.group p = st.group p := by
    intro p
    unfold Reader.group
    rw [f.groups]
  have hh : ∀ q, (r.entry q).m_history = (st.entry q).m_history := by
    intro q
    by_cases hq : q < st.entries.length
    · by_cases hqt : q = t
      · rw [hqt]
        exact f.own
      · rw [f.old q hq hqt]
    · rw [f.new q (by omega), entry_of_ge (by omega : st.entries.length ≤ q)]
      rfl
  have hn : r.hasError = false → st.hasError = false := by
    intro hr
    by_contra hs
    have := f.err (by simpa using hs)
    rw [hr] at this
    cases this
  have hreg : ∀ u e, mapGet u st.m_entries = some e → r.entry e = st.entry e := by
    intro u e he
    refine f.old e (h.ereg_lt u e he) ?_
    intro e1
    rw [e1] at he
    exact ht.unreg u he
  have hI : HeapInv r := by
    constructor
    · intro u p hp
      rw [f.groups]
      exact h.greg_lt u p (f.m_groups ▸ hp)
    · intro u p hp
      rw [hg]
      exact h.greg_uuid u p (f.m_groups ▸ hp)
    · intro u e hp
      exact lt_of_lt_of_le (h.ereg_lt u e (f.m_entries ▸ hp)) f.len
    · intro u e hp
      rw [hreg u e (f.m_entries ▸ hp)]
      exact h.ereg_uuid u e (f.m_entries ▸ hp)
    · intro e y hy
      rw [hh] at hy
      exact lt_of_lt_of_le (h.hist_lt e y hy) f.len
    · intro e y hy
      rw [hh] at hy
      rw [hh]
      exact h.hist_nil e y hy
    · intro e y hy u
      rw [hh] at hy
      rw [f.m_entries]
      exact h.hist_unreg e y hy u
    · intro hs e y hy
      rw [hh] at hy
      have hy1 := h.hist_lt e y hy
      have hyt : y ≠ t := by
        intro e1
        rw [e1] at hy
        exact ht.unhist e hy
      have het : e ≠ t := by
        intro e1
        rw [e1, ht.nil] at hy
        cases hy
      have he1 : e < st.entries.length := by
        by_contra hc
        rw [entry_of_ge (by omega : st.entries.length ≤ e)] at hy
        cases hy
      rw [f.old y hy1 hyt, f.old e he1 het]
      exact h.hist_uuid (f.strict ▸ hs) e y hy
    · intro hr p c hc
      rw [hg] at hc
      rw [f.m_groups]
      exact h.kids (hn hr) p c hc
    · intro hr p e hc
      rw [hg] at hc
      rw [f.m_entries]
      exact h.ents (hn hr) p e hc
  refine ⟨hI, ⟨lt_of_lt_of_le ht.lt f.len, by rw [hh]; exact ht.nil, ?_, ?_⟩, ?_⟩
  · intro e he
    rw [hh] at he
    exact ht.unhist e he
  · intro u hu
    rw [f.m_entries] at hu
    exact ht.unreg u hu
  · intro i hi1 hi2
    refine ⟨hi2, f.new i hi1, ?_, ?_⟩
    · intro e he
      rw [hh] at he
      have := h.hist_lt e i he
      omega
    · intro u hu
      rw [f.m_entries] at hu
      have := h.ereg_lt u i hu
      omega

theorem heapExt_of_entryFrame {x : Nat} {a st r : Reader} {t : Nat} (hx : HeapExt x a st)
    (hn : a.entries.length ≤ t) (f : EntryFrame t st r) : HeapExt x a r := by
  refine hx.next (by rw [f.groups]) f.len (fun q _ _ => by unfold Reader.group; rw [f.groups])
    ?_ (fun u p hp => by rw [f.m_groups]; exact hp) (fun u p hp => by rw [f.m_entries]; exact hp)
    (fun u p hp => Or.inl (f.m_groups ▸ hp)) (fun u p hp => Or.inl (f.m_entries ▸ hp))
    f.err f.strict
  intro q hq
  have := hx.elen
  rw [f.old q (by omega) (by omega)]

theorem parseEntry_succ (env : Env) (n : Nat) (history : Bool) (st : Reader) :
    parseEntry env (n + 1) history st =
      match parseEntryWhile env n history ⟨st.entries.length, [], []⟩
        (st.newEntry.2.updEntry st.entries.length
          (fun e => { e with m_updateTimeinfo := false })) with
      | none => none
      | some (l, st3) => some (parseEntryFinish env history l st3) := by
  rw [parseEntry]
  rfl

/-- An `Entry` element outside a history keeps the state of the heaps, and the
entry it returns is in the registry unless an error is raised. -/
theorem parseEntry_heap {x : Nat} {a st : Reader} (env : Env) (n : Nat) (r : Nat × Reader)
    (h : HeapInv st) (hx : HeapExt x a st) (hr : parseEntry env n false st = some r) :
    HeapInv r.2 ∧ HeapExt x a r.2 ∧
      (r.2.hasError = false → ∃ u, mapGet u r.2.m_entries = some r.1) := by
  cases n with
  | zero =>
    rw [parseEntry] at hr
    cases hr
  | succ n =>
    rw [parseEntry_succ] at hr
    obtain ⟨N1, N2⟩ := heapInv_newEntry h
    have N3 := heapInv_updEntry_data N1 st.entries.length
      (fun e => { e with m_updateTimeinfo := false }) (fun _ => rfl)
    have N4 := freshE_updEntry_data N2 st.entries.length
      (fun e => { e with m_updateTimeinfo := false }) (fun _ => rfl)
    have N5 := heapExt_updEntry_data (heapExt_newEntry hx) st.entries.length
      (fun e => { e with m_updateTimeinfo := false }) (fun _ => rfl)
    generalize st.newEntry.2.updEntry st.entries.length
      (fun e => { e with m_updateTimeinfo := false }) = st2 at hr N3 N4 N5
    cases hw : parseEntryWhile env n false ⟨st.entries.length, [], []⟩ st2 with
    | none =>
      rw [hw] at hr
      cases hr
    | some w =>
      rw [hw] at hr
      obtain ⟨l, st3⟩ := w
      have hr1 : parseEntryFinish env false l st3 = r := by
        simpa using hr
      obtain ⟨f1, f2, _, f4⟩ := (entry_frame env n).1 false ⟨st.entries.length, [], []⟩ st2
        (l, st3) hw N4.lt
      have f1 : EntryFrame st.entries.length st2 st3 := f1
      have f2 : l.entry = st.entries.length := f2
      obtain ⟨g1, g2, g3⟩ := heapInv_of_entryFrame N3 N4 f1
      have g4 := heapExt_of_entryFrame N5 hx.elen f1
      rw [← hr1]
      refine parseEntryFinish_heap env l g1 (f2 ▸ g2) g4 (by rw [f2]; exact hx.elen) ?_
      intro i hi
      rcases f4 i hi with h1 | h1
      · cases h1
      · have := N4.lt
        have := N5.elen
        refine ⟨g3 i h1.1 h1.2, ?_, ?_⟩
        · rw [f2]
          omega
        · have := hx.elen
          omega

/-! ### The heaps through a `Group` element -/

theorem groupAt_next {x : Nat} {a s r : Reader} {t : Nat} {l : GroupLocals}
    (h : GroupAt x a t l s) (hi : HeapInv r) (he : HeapExt x s r) : GroupAt x a t l r :=
  ⟨hi, freshG_ext h.fresh he, localsOk_ext h.locals he, h.ext.join he⟩

theorem groupAt_of_same {x : Nat} {a s r : Reader} {t : Nat} {l : GroupLocals}
    (h : GroupAt x a t l s) (h1 : r.groups = s.groups)
    (h2 : r.entries = s.entries) (h3 : r.m_groups = s.m_groups)
    (h4 : r.m_entries = s.m_entries) (h5 : r.m_strictMode = s.m_strictMode)
    (h6 : s.hasError = true → r.hasError = true) : GroupAt x a t l r :=
  groupAt_next h (h.inv.of_same h1 h2 h3 h4 h5 h6) (heapExt_of_same (HeapExt.here x s) h1 h2 h3 h4 h5 h6)

theorem heapInv_updGroup_data {st : Reader} (h : HeapInv st) (p : Nat) (f : DbGroup → DbGroup)
    (hf : ∀ g, (f g).ident = g.ident) : HeapInv (st.updGroup p f) :=
  heapInv_updGroup_ident h p f (hf _)

theorem heapExt_updGroup_data {x : Nat} {a s : Reader} (h : HeapExt x a s) (p : Nat)
    (f : DbGroup → DbGroup) (hf : ∀ g, (f g).ident = g.ident) : HeapExt x a (s.updGroup p f) :=
  heapExt_updGroup h p f (Or.inr (Or.inr (congrArg (fun z => z.2) (hf _))))

theorem leafAt_groupAt (x : Nat) (a : Reader) (t : Nat) (l : GroupLocals) (e : Nat) :
    LeafAt t e (fun s => GroupAt x a t l s) := by
  refine ⟨⟨?_, ?_, ?_, ?_, ?_, ?_, ?_, ?_, ?_, ?_, ?_⟩, ?_, ?_⟩
  · intro st m h
    exact groupAt_of_same h rfl rfl rfl rfl rfl (fun _ => hasError_raiseError _ _)
  · intro st f hf h
    exact groupAt_next h (heapInv_updGroup_data h.inv t f hf)
      (heapExt_updGroup_data (HeapExt.here x st) t f hf)
  · intro st f hf h
    exact groupAt_next h (heapInv_updEntry_data h.inv e f hf)
      (heapExt_updEntry_data (HeapExt.here x st) e f hf)
  · intro st f h
    exact groupAt_of_same h rfl rfl rfl rfl rfl (fun z => z)
  · intro env st h
    exact groupAt_of_same h rfl rfl rfl rfl rfl (fun z => z)
  · intro env st cs c h
    exact groupAt_of_same h rfl rfl rfl rfl rfl (fun z => z)
  · intro st h
    exact groupAt_of_same h rfl rfl rfl rfl rfl (fun z => z)
  · intro st h
    exact groupAt_of_same h rfl rfl rfl rfl rfl (fun _ => by simp [Reader.hasError])
  · intro st v h
    exact groupAt_of_same h rfl rfl rfl rfl rfl (fun z => z)
  · intro st v h
    exact groupAt_of_same h rfl rfl rfl rfl rfl (fun z => z)
  · intro st d h
    exact groupAt_of_same h rfl rfl rfl rfl rfl (fun z => z)
  · intro st u h
    exact groupAt_next h (heapInv_getGroup h.inv u) (heapExt_getGroup (HeapExt.here x st) u)
  · intro st u h
    exact groupAt_next h (heapInv_getEntry h.inv u) (heapExt_getEntry (HeapExt.here x st) u)

theorem groupAt_setUuid {x : Nat} {a s : Reader} {t : Nat} {l : GroupLocals}
    (ha : a.groups.length ≤ t) (u : Uuid) (h : GroupAt x a t l s) :
    GroupAt x a t l (s.updGroup t (fun g => { g with m_uuid := u })) := by
  refine ⟨heapInv_updGroup_fresh h.inv h.fresh.unreg _ (fun _ => rfl), ⟨by simpa using h.fresh.lt, ?_⟩,
    ?_, heapExt_updGroup h.ext t _ (Or.inr (Or.inl ha))⟩
  · intro v hv
    exact h.fresh.unreg v (by simpa using hv)
  · intro hs
    obtain ⟨h1, h2⟩ := h.locals (by simpa [Reader.hasError] using hs)
    exact ⟨fun c hc => by simpa using h1 c hc, fun c hc => by simpa using h2 c hc⟩

theorem ensureGroupUuid_at {x : Nat} {a s : Reader} {t : Nat} {l : GroupLocals} (env : Env)
    (ha : a.groups.length ≤ t) (h : GroupAt x a t l s) :
    GroupAt x a t l (ensureGroupUuid env t s) := by
  unfold ensureGroupUuid
  split
  · show GroupAt x a t l ((s.randomUuid env).2.updGroup t
      (fun g => { g with m_uuid := (s.randomUuid env).1 }))
    exact groupAt_setUuid ha _ (groupAt_of_same h rfl rfl rfl rfl rfl (fun z => z))
  · exact h

theorem copyDataFrom_group_ident (g other : DbGroup) (h : other.m_uuid = g.m_uuid) :
    (g.copyDataFrom other).ident = g.ident := by
  unfold DbGroup.ident DbGroup.copyDataFrom DbGroup.links
  simp only [h]

theorem heapInv_deleteGroup {st : Reader} (h : HeapInv st) (t : Nat) :
    HeapInv (st.deleteGroup t) :=
  heapInv_updGroup_data h t (fun y => { y with deleted := true }) (fun _ => rfl)

theorem heapExt_deleteGroup {x : Nat} {a s : Reader} (h : HeapExt x a s) (t : Nat) :
    HeapExt x a (s.deleteGroup t) :=
  heapExt_updGroup_data h t (fun y => { y with deleted := true }) (fun _ => rfl)

theorem heapInv_defGroup {st : Reader} (h : HeapInv st) (u : Uuid) (e : Nat) :
    HeapInv (st.defGroup u e) :=
  h.of_same rfl rfl rfl rfl rfl (fun z => z)

theorem heapExt_defGroup {x : Nat} {a s : Reader} (h : HeapExt x a s) (u : Uuid) (e : Nat) :
    HeapExt x a (s.defGroup u e) :=
  heapExt_of_same h rfl rfl rfl rfl rfl (fun z => z)

theorem mergeGroup_some {t e : Nat} {s s1 : Reader} (hu : (s.group t).m_uuid.isNull = false)
    (he : getGroup (s.group t).m_uuid s = (some e, s1)) :
    mergeGroup t s = (e, (((s1.updGroup e (fun y => y.copyDataFrom (s1.group t))).updGroup e
      (fun y => { y with m_updateTimeinfo := false })).deleteGroup t).defGroup
        (s.group t).m_uuid e) := by
  unfold mergeGroup
  rw [if_pos (by simp [hu]), he]

theorem mergeGroup_body {x : Nat} {s1 : Reader} {t e : Nat} (u : Uuid) (A : HeapInv s1)
    (hid : (s1.group t).m_uuid = (s1.group e).m_uuid) :
    HeapInv ((((s1.updGroup e (fun y => y.copyDataFrom (s1.group t))).updGroup e
      (fun y => { y with m_updateTimeinfo := false })).deleteGroup t).defGroup u e) ∧
    HeapExt x s1 ((((s1.updGroup e (fun y => y.copyDataFrom (s1.group t))).updGroup e
      (fun y => { y with m_updateTimeinfo := false })).deleteGroup t).defGroup u e) ∧
    ((((s1.updGroup e (fun y => y.copyDataFrom (s1.group t))).updGroup e
      (fun y => { y with m_updateTimeinfo := false })).deleteGroup t).defGroup u e).m_groups =
        s1.m_groups := by
  have B := heapInv_updGroup_ident A e (fun y => y.copyDataFrom (s1.group t))
    (copyDataFrom_group_ident _ _ hid)
  have C := heapInv_updGroup_data B e (fun y => { y with m_updateTimeinfo := false })
    (fun _ => rfl)
  have D := heapInv_deleteGroup C t
  have XB := heapExt_updGroup (HeapExt.here x s1) e (fun y => y.copyDataFrom (s1.group t))
    (Or.inr (Or.inr (congrArg (fun z => z.2) (copyDataFrom_group_ident _ _ hid))))
  have XC := heapExt_updGroup_data XB e (fun y => { y with m_updateTimeinfo := false })
    (fun _ => rfl)
  have XD := heapExt_deleteGroup XC t
  refine ⟨heapInv_defGroup D u e, heapExt_defGroup XD u e, ?_⟩
  simp only [Reader.defGroup, Reader.deleteGroup, Reader.updGroup_m_groups]

/-- The merge of a defining `Group` element into the registry keeps the state
of the heaps; the group kept is in the registry unless an error is raised. -/
theorem mergeGroup_heap {x : Nat} {s : Reader} {t : Nat} (h : HeapInv s) (ht : t < s.groups.length) :
    HeapInv (mergeGroup t s).2 ∧ HeapExt x s (mergeGroup t s).2 ∧
      (((mergeGroup t s).2.hasError = true) ∨
        ∃ u, mapGet u (mergeGroup t s).2.m_groups = some (mergeGroup t s).1) := by
  cases hu : (s.group t).m_uuid.isNull with
  | false =>
    obtain ⟨e, he1, he2⟩ := getGroup_some s hu
    have A := heapInv_getGroup h (s.group t).m_uuid
    have X := heapExt_getGroup (HeapExt.here x s) (s.group t).m_uuid
    obtain ⟨e1, e2, e3, e4, e5, e6⟩ := getGroup_effect (s.group t).m_uuid s
    have hid : ((getGroup (s.group t).m_uuid s).2.group t).m_uuid =
        ((getGroup (s.group t).m_uuid s).2.group e).m_uuid := by
      rw [e2 t ht, (A.greg_uuid _ e he2).1]
    rw [mergeGroup_some hu he1]
    obtain ⟨b1, b2, b4⟩ := mergeGroup_body (s.group t).m_uuid A hid
    refine ⟨b1, X.join b2, Or.inr ⟨(s.group t).m_uuid, ?_⟩⟩
    show mapGet _ (Reader.m_groups _) = some e
    rw [b4]
    exact he2
  | true =>
    unfold mergeGroup
    rw [if_neg (by simp [hu])]
    cases hr : s.hasError with
    | false =>
      rw [if_pos (by simp)]
      exact ⟨h.of_same rfl rfl rfl rfl rfl (fun _ => hasError_raiseError _ _),
        heapExt_of_same (HeapExt.here x s) rfl rfl rfl rfl rfl
          (fun _ => hasError_raiseError _ _), Or.inl (hasError_raiseError _ _)⟩
    | true =>
      rw [if_neg (by simp)]
      exact ⟨h, HeapExt.here x s, Or.inl hr⟩

theorem parseGroupFinish_parts (env : Env) (l : GroupLocals) (st : Reader) :
    parseGroupFinish env l st =
      ((mergeGroup l.group (ensureGroupUuid env l.group st)).1,
        l.entries.foldl
          (fun s entry => s.setGroup entry (mergeGroup l.group (ensureGroupUuid env l.group st)).1)
          (l.children.foldl
            (fun s child => s.setParent child
              (mergeGroup l.group (ensureGroupUuid env l.group st)).1)
            (mergeGroup l.group (ensureGroupUuid env l.group st)).2)) := rfl

/-- The code of `parseGroup` after its loop keeps the state of the heaps, and
the group returned is in the registry unless an error is raised. -/
theorem parseGroupFinish_heap {x : Nat} {a st : Reader} (env : Env) (l : GroupLocals)
    (ha : a.groups.length ≤ l.group) (h : GroupAt x a l.group l st) :
    HeapInv (parseGroupFinish env l st).2 ∧ HeapExt x a (parseGroupFinish env l st).2 ∧
      ((parseGroupFinish env l st).2.hasError = false →
        ∃ u, mapGet u (parseGroupFinish env l st).2.m_groups =
          some (parseGroupFinish env l st).1) := by
  rw [parseGroupFinish_parts]
  have E := ensureGroupUuid_at env ha h
  obtain ⟨m1, m2, m4⟩ := mergeGroup_heap (x := x) E.inv E.fresh.lt
  have m3 := groupAt_next E m1 m2
  generalize mergeGroup l.group (ensureGroupUuid env l.group st) = M at m1 m2 m3 m4
  obtain ⟨c1, c2⟩ := heapInv_adoptGroups l.children M.1 M.2 m1 (HeapExt.here x M.2)
    (fun he => (m3.locals he).1)
  have c3 := localsOk_ext m3.locals c2
  obtain ⟨d1, d2⟩ := heapInv_adoptEntries l.entries M.1 _ c1 c2 (fun he => (c3 he).2)
  refine ⟨d1, m3.ext.join d2, ?_⟩
  intro hr
  rcases m4 with m4 | ⟨u, hu⟩
  · have := d2.err m4
    rw [hr] at this
    cases this
  · exact ⟨u, d2.greg u _ hu⟩

theorem heapInv_readNext {st : Reader} (h : HeapInv st) : HeapInv (readNextStartElement st).2 := by
  unfold readNextStartElement
  split
  · exact h
  · split
    · exact h.of_same rfl rfl rfl rfl rfl (fun _ => by simp [Reader.hasError])
    · exact h.of_same rfl rfl rfl rfl rfl (fun z => z)
    · exact h.of_same rfl rfl rfl rfl rfl (fun z => z)

theorem heapExt_readNext {x : Nat} {a st : Reader} (h : HeapExt x a st) :
    HeapExt x a (readNextStartElement st).2 := by
  unfold readNextStartElement
  split
  · exact h
  · split
    · exact heapExt_of_same h rfl rfl rfl rfl rfl (fun _ => by simp [Reader.hasError])
    · exact heapExt_of_same h rfl rfl rfl rfl rfl (fun z => z)
    · exact heapExt_of_same h rfl rfl rfl rfl rfl (fun z => z)

theorem heapInv_endElement {st : Reader} (h : HeapInv st) : HeapInv st.endElement :=
  h.of_same rfl rfl rfl rfl rfl (fun z => z)

theorem heapExt_endElement {x : Nat} {a st : Reader} (h : HeapExt x a st) :
    HeapExt x a st.endElement :=
  heapExt_of_same h rfl rfl rfl rfl rfl (fun z => z)

theorem groupAt_readNext {x : Nat} {a st : Reader} {t : Nat} {l : GroupLocals}
    (h : GroupAt x a t l st) : GroupAt x a t l (readNextStartElement st).2 :=
  groupAt_next h (heapInv_readNext h.inv) (heapExt_readNext (HeapExt.here x st))

theorem groupAt_endElement {x : Nat} {a st : Reader} {t : Nat} {l : GroupLocals}
    (h : GroupAt x a t l st) : GroupAt x a t l st.endElement :=
  groupAt_of_same h rfl rfl rfl rfl rfl (fun z => z)

theorem hasError_false_of_ext {x : Nat} {a s : Reader} (hx : HeapExt x a s)
    (hs : s.hasError = false) : a.hasError = false := by
  by_contra ha
  have := hx.err (by simpa using ha)
  rw [hs] at this
  cases this

/-- The state of the heaps through a `Group` element. -/
theorem group_heap (env : Env) (n : Nat) :
    (∀ l st r x a, parseGroupWhile env n l st = some r → a.groups.length ≤ l.group →
      GroupAt x a l.group l st → GroupAt x a l.group r.1 r.2 ∧ r.1.group = l.group) ∧
    (∀ st r x a, parseGroup env n st = some r → HeapInv st → HeapExt x a st →
      HeapInv r.2 ∧ HeapExt x a r.2 ∧
        (r.2.hasError = false → ∃ u, mapGet u r.2.m_groups = some r.1)) := by
  induction n with
  | zero => simp [parseGroupWhile, parseGroup]
  | succ n ih =>
    obtain ⟨ihW, ihG⟩ := ih
    refine ⟨?_, ?_⟩
    · intro l st r x a hr ha h
      unfold parseGroupWhile at hr
      have f1 := groupAt_readNext h
      split at hr
      · rename_i st1 heq
        cases hr
        rw [heq] at f1
        exact ⟨f1, rfl⟩
      · rename_i c st1 heq
        rw [heq] at f1
        simp only at f1
        split at hr
        · split at hr
          · cases hr
          · rename_i g st2 hg
            obtain ⟨g1, g2, g3⟩ := ihG st1 (g, st2) x st1 hg f1.inv (HeapExt.here x st1)
            have f2 : GroupAt x a l.group { l with children := l.children ++ [g] } st2 := by
              refine ⟨g1, freshG_ext f1.fresh g2, ?_, f1.ext.join g2⟩
              intro hs
              obtain ⟨k1, k2⟩ := localsOk_ext f1.locals g2 hs
              refine ⟨?_, k2⟩
              intro c1 hc1
              rcases List.mem_append.mp hc1 with hc2 | hc2
              · exact k1 c1 hc2
              · rw [List.mem_singleton.mp hc2]
                exact g3 hs
            exact ihW { l with children := l.children ++ [g] } st2 r x a hr ha f2
        · split at hr
          · split at hr
            · cases hr
            · rename_i e st2 he
              obtain ⟨g1, g2, g3⟩ := parseEntry_heap env n (e, st2) f1.inv (HeapExt.here x st1) he
              have f2 : GroupAt x a l.group { l with entries := l.entries ++ [e] } st2 := by
                refine ⟨g1, freshG_ext f1.fresh g2, ?_, f1.ext.join g2⟩
                intro hs
                obtain ⟨k1, k2⟩ := localsOk_ext f1.locals g2 hs
                refine ⟨k1, ?_⟩
                intro c1 hc1
                rcases List.mem_append.mp hc1 with hc2 | hc2
                · exact k2 c1 hc2
                · rw [List.mem_singleton.mp hc2]
                  exact g3 hs
              exact ihW { l with entries := l.entries ++ [e] } st2 r x a hr ha f2
          · have f2 : GroupAt x a l.group l (parseGroupField env l.group c st1) :=
              parseGroupField_at (leafAt_groupAt x a l.group l 0)
                (fun _ s u hs => groupAt_setUuid ha u hs) f1
            exact ihW l _ r x a hr ha (groupAt_endElement f2)
    · intro st r x a hr h hx
      unfold parseGroup at hr
      simp only at hr
      split at hr
      · cases hr
      · rename_i l st3 hw
        cases hr
        obtain ⟨N1, N2⟩ := heapInv_newGroup h
        have N3 := heapInv_updGroup_data N1 st.groups.length
          (fun g => { g with m_updateTimeinfo := false }) (fun _ => rfl)
        have N5 := heapExt_updGroup_data (heapExt_newGroup hx) st.groups.length
          (fun g => { g with m_updateTimeinfo := false }) (fun _ => rfl)
        have N4 : FreshG (st.newGroup.2.updGroup st.groups.length
            (fun g => { g with m_updateTimeinfo := false })) st.groups.length :=
          ⟨by simpa using N2.lt, fun u hu => N2.unreg u (by simpa using hu)⟩
        have f0 : GroupAt x a st.groups.length ⟨st.groups.length, [], []⟩
            (st.newGroup.2.updGroup st.groups.length
              (fun g => { g with m_updateTimeinfo := false })) :=
          ⟨N3, N4, fun _ => ⟨fun c hc => absurd hc (List.not_mem_nil c),
            fun c hc => absurd hc (List.not_mem_nil c)⟩, N5⟩
        obtain ⟨w1, w2⟩ := ihW ⟨st.groups.length, [], []⟩ _ (l, st3) x a hw hx.glen f0
        have w2 : l.group = st.groups.length := w2
        have w1 : GroupAt x a st.groups.length l st3 := w1
        rw [← w2] at w1
        exact parseGroupFinish_heap env l (by rw [w2]; exact hx.glen) w1

/-! ### The heaps through the document -/

theorem rootOk_next {ok : Bool} {s r : Reader} (h : RootOk ok s) (hi : HeapInv r)
    (hroot : r.rootGroup = s.rootGroup)
    (hreg : ∀ u p, mapGet u s.m_groups = some p → mapGet u r.m_groups = some p)
    (herr : s.hasError = true → r.hasError = true) : RootOk ok r := by
  refine ⟨hi, ?_⟩
  intro hok hr
  have hs : s.hasError = false := by
    by_contra hc
    have := herr (by simpa using hc)
    rw [hr] at this
    cases this
  obtain ⟨u, hu⟩ := h.2 hok hs
  exact ⟨u, by rw [hroot]; exact hreg u _ hu⟩

theorem rootOk_of_same {ok : Bool} {s r : Reader} (h : RootOk ok s) (h1 : r.groups = s.groups)
    (h2 : r.entries = s.entries) (h3 : r.m_groups = s.m_groups)
    (h4 : r.m_entries = s.m_entries) (h5 : r.m_strictMode = s.m_strictMode)
    (h6 : s.hasError = true → r.hasError = true) (h7 : r.rootGroup = s.rootGroup) :
    RootOk ok r :=
  rootOk_next h (h.1.of_same h1 h2 h3 h4 h5 h6) h7 (fun u p hp => by rw [h3]; exact hp) h6

theorem leafAt_rootOk (ok : Bool) (t e : Nat) : LeafAt t e (fun s => RootOk ok s) := by
  refine ⟨⟨?_, ?_, ?_, ?_, ?_, ?_, ?_, ?_, ?_, ?_, ?_⟩, ?_, ?_⟩
  · intro st m h
    exact rootOk_of_same h rfl rfl rfl rfl rfl (fun _ => hasError_raiseError _ _) rfl
  · intro st f hf h
    exact rootOk_next h (heapInv_updGroup_data h.1 t f hf) (by simp)
      (fun u p hp => by simpa using hp) (by simp [Reader.hasError])
  · intro st f hf h
    exact rootOk_next h (heapInv_updEntry_data h.1 e f hf) (by simp)
      (fun u p hp => by simpa using hp) (by simp [Reader.hasError])
  · intro st f h
    exact rootOk_of_same h rfl rfl rfl rfl rfl (fun z => z) rfl
  · intro env st h
    exact rootOk_of_same h rfl rfl rfl rfl rfl (fun z => z) rfl
  · intro env st cs c h
    exact rootOk_of_same h rfl rfl rfl rfl rfl (fun z => z) rfl
  · intro st h
    exact rootOk_of_same h rfl rfl rfl rfl rfl (fun z => z) rfl
  · intro st h
    exact rootOk_of_same h rfl rfl rfl rfl rfl (fun _ => by simp [Reader.hasError]) rfl
  · intro st v h
    exact rootOk_of_same h rfl rfl rfl rfl rfl (fun z => z) rfl
  · intro st v h
    exact rootOk_of_same h rfl rfl rfl rfl rfl (fun z => z) rfl
  · intro st d h
    exact rootOk_of_same h rfl rfl rfl rfl rfl (fun z => z) rfl
  · intro st u h
    exact rootOk_next h (heapInv_getGroup h.1 u) (by simp)
      (heapExt_getGroup (HeapExt.here 0 st) u).greg
      (by rw [hasError_getGroup]; exact fun z => z)
  · intro st u h
    exact rootOk_next h (heapInv_getEntry h.1 u) (by simp)
      (heapExt_getEntry (HeapExt.here 0 st) u).greg
      (by rw [hasError_getEntry]; exact fun z => z)

theorem rootOk_readNext {ok : Bool} {st : Reader} (h : RootOk ok st) :
    RootOk ok (readNextStartElement st).2 := by
  unfold readNextStartElement
  split
  · exact h
  · split
    · exact rootOk_of_same h rfl rfl rfl rfl rfl (fun _ => by simp [Reader.hasError]) rfl
    · exact rootOk_of_same h rfl rfl rfl rfl rfl (fun z => z) rfl
    · exact rootOk_of_same h rfl rfl rfl rfl rfl (fun z => z) rfl

theorem rootOk_endElement {ok : Bool} {st : Reader} (h : RootOk ok st) :
    RootOk ok st.endElement :=
  rootOk_of_same h rfl rfl rfl rfl rfl (fun z => z) rfl

theorem rootGroup_setRootGroup (st : Reader) (p : Nat) : (st.setRootGroup p).rootGroup = p := by
  simp [Reader.setRootGroup, Reader.setRootPtr]

/-- The state of the heaps through a `Root` element. -/
theorem parseRootWhile_heap (env : Env) (n : Nat) :
    ∀ l st r, parseRootWhile env n l st = some r → RootOk l.groupParsedSuccessfully st →
      RootOk r.1.groupParsedSuccessfully r.2 := by
  induction n with
  | zero => simp [parseRootWhile]
  | succ n ih =>
    intro l st r hr h
    unfold parseRootWhile at hr
    have f1 := rootOk_readNext h
    split at hr
    · rename_i st1 heq
      cases hr
      rw [heq] at f1
      exact f1
    · rename_i c st1 heq
      rw [heq] at f1
      simp only at f1
      split at hr
      · split at hr
        · refine ih _ _ r hr ⟨?_, ?_⟩
          · exact f1.1.of_same rfl rfl rfl rfl rfl (fun _ => hasError_raiseError _ _)
          · intro hc
            cases hc
        · split at hr
          · cases hr
          · rename_i g st2 hg
            obtain ⟨g1, g2, g3⟩ := (group_heap env n).2 st1 (g, st2) 0 st1 hg f1.1
              (HeapExt.here 0 st1)
            refine ih ⟨true, true⟩ _ r hr ⟨heapInv_deleteGroup (heapInv_setRootGroup g1 g) _, ?_⟩
            intro _ he
            have he2 : st2.hasError = false := by
              simpa [Reader.hasError, Reader.deleteGroup, Reader.setRootGroup] using he
            obtain ⟨u, hu⟩ := g3 he2
            refine ⟨u, ?_⟩
            rw [Reader.deleteGroup_rootGroup, rootGroup_setRootGroup]
            simpa [Reader.deleteGroup, Reader.setRootGroup] using hu
      · split at hr
        · refine ih l _ r hr (rootOk_endElement ?_)
          exact parseDeletedObjects_at (leafAt_rootOk _ 0 0).toLeafData f1
        · exact ih l _ r hr (rootOk_endElement f1)

theorem parseRoot_heap (env : Env) (n : Nat) (st : Reader) (r : Bool × Reader)
    (hr : parseRoot env n st = some r) (h : HeapInv st) : RootOk r.1 r.2 := by
  cases n with
  | zero =>
    rw [parseRoot] at hr
    cases hr
  | succ n =>
    rw [parseRoot] at hr
    split at hr
    · cases hr
    · rename_i l st1 hw
      cases hr
      exact parseRootWhile_heap env n ⟨false, false⟩ st (l, st1) hw
        ⟨h, fun hc => by cases hc⟩

/-- The state of the heaps through the document element. -/
theorem parseKeePassFileWhile_heap (env : Env) (n : Nat) :
    ∀ l st r, parseKeePassFileWhile env n l st = some r → RootOk l.rootParsedSuccessfully st →
      RootOk r.1.rootParsedSuccessfully r.2 := by
  induction n with
  | zero => simp [parseKeePassFileWhile]
  | succ n ih =>
    intro l st r hr h
    unfold parseKeePassFileWhile at hr
    have f1 := rootOk_readNext h
    split at hr
    · rename_i st1 heq
      cases hr
      rw [heq] at f1
      exact f1
    · rename_i c st1 heq
      rw [heq] at f1
      simp only at f1
      split at hr
      · refine ih l _ r hr (rootOk_endElement ?_)
        exact parseMeta_at (leafAt_rootOk _ 0 0) f1
      · split at hr
        · split at hr
          · exact ih _ _ r hr ⟨f1.1, fun hc => by cases hc⟩
          · split at hr
            · cases hr
            · rename_i ok st2 hp
              exact ih ⟨true, ok⟩ st2 r hr (parseRoot_heap env n st1 (ok, st2) hp f1.1)
        · exact ih l _ r hr (rootOk_endElement f1)

theorem parseKeePassFile_heap (env : Env) (n : Nat) (st : Reader) (r : Bool × Reader)
    (hr : parseKeePassFile env n st = some r) (h : HeapInv st) : RootOk r.1 r.2 := by
  cases n with
  | zero =>
    rw [parseKeePassFile] at hr
    cases hr
  | succ n =>
    rw [parseKeePassFile] at hr
    split at hr
    · cases hr
    · rename_i l st1 hw
      cases hr
      exact parseKeePassFileWhile_heap env n ⟨false, false⟩ st (l, st1) hw
        ⟨h, fun hc => by cases hc⟩

theorem idents_updGroup (s : Reader) (p : Nat) (f : DbGroup → DbGroup)
    (hf : ∀ g, (f g).ident = g.ident) : (s.updGroup p f).idents = s.idents := by
  unfold Reader.idents
  have h1 : (fun q => ((s.updGroup p f).group q).ident) = fun q => (s.group q).ident := by
    funext q
    rw [group_updGroup]
    split
    · rename_i hc
      rw [hc.1]
      exact hf _
    · rfl
  have h2 : (fun e => ((s.updGroup p f).entry e).ident) = fun e => (s.entry e).ident := by
    funext e
    rw [entry_updGroup]
  rw [h1, h2]
  simp

theorem idents_updEntry (s : Reader) (p : Nat) (f : Entry → Entry)
    (hf : ∀ e, (f e).ident = e.ident) : (s.updEntry p f).idents = s.idents := by
  unfold Reader.idents
  have h1 : (fun q => ((s.updEntry p f).group q).ident) = fun q => (s.group q).ident := by
    funext q
    rw [group_updEntry]
  have h2 : (fun e => ((s.updEntry p f).entry e).ident) = fun e => (s.entry e).ident := by
    funext e
    rw [entry_updEntry]
    split
    · rename_i hc
      rw [hc.1]
      exact hf _
    · rfl
  rw [h1, h2]
  simp

theorem idents_resolveBinaries (items : List (String × Nat × String)) (s : Reader) :
    (resolveBinaries items s).idents = s.idents := by
  induction items generalizing s with
  | nil => rfl
  | cons x rest ih =>
    obtain ⟨id, entry, name⟩ := x
    unfold resolveBinaries
    simp only
    rw [ih, idents_updEntry]
    · split
      · rfl
      · rfl
    · intro _
      rfl

theorem idents_enableUpdates (s : Reader) : (enableUpdates s).idents = s.idents := by
  unfold enableUpdates
  simp only
  rw [foldl_obs Reader.idents, foldl_obs Reader.idents]
  · rfl
  · intro t a
    exact idents_updGroup _ _ _ (fun _ => rfl)
  · intro t a
    rw [foldl_obs Reader.idents]
    · exact idents_updEntry _ _ _ (fun _ => rfl)
    · intro t2 b
      exact idents_updEntry _ _ _ (fun _ => rfl)

theorem rootOk_of_idents {ok : Bool} {s r : Reader} (h : RootOk ok s) (e : r.idents = s.idents) :
    RootOk ok r := by
  unfold Reader.idents at e
  simp only [Prod.mk.injEq] at e
  obtain ⟨e1, e2, e3, e4, e5, e6, e7, e8, e9, e10⟩ := e
  have hE : r.hasError = s.hasError := by
    unfold Reader.hasError
    rw [e8, e9]
  exact rootOk_next h (h.1.of_eq (fun p => congrFun e1 p) (fun q => congrFun e2 q) e3 e4 e5 e6 e7
    (by rw [hE]; exact fun z => z)) e10 (fun u p hp => by rw [e3]; exact hp)
    (by rw [hE]; exact fun z => z)

theorem readDatabaseFinish_heap (env : Env) (ok : Bool) (st : Reader) (h : RootOk ok st) :
    RootOk true (readDatabaseFinish env ok st) := by
  unfold readDatabaseFinish
  cases ok with
  | false =>
    rw [if_pos (by simp)]
    refine ⟨h.1.of_same rfl rfl rfl rfl rfl (fun _ => hasError_raiseError _ _), ?_⟩
    intro _ hc
    rw [hasError_raiseError] at hc
    cases hc
  | true =>
    rw [if_neg (by simp)]
    exact rootOk_of_idents h ((idents_enableUpdates _).trans (idents_resolveBinaries _ _))

theorem heapInv_start (strictMode : Bool) (binaryPool : List (String × QByteArray))
    (randomStream : Option QByteArray) (doc : XmlElement) :
    HeapInv (Reader.start strictMode binaryPool randomStream doc) := by
  have hE : ∀ e, (Reader.start strictMode binaryPool randomStream doc).entry e = Entry.init := by
    intro e
    simp [Reader.entry, Reader.start]
  have hG : ∀ p, ((Reader.start strictMode binaryPool randomStream doc).group p).m_children = [] ∧
      ((Reader.start strictMode binaryPool randomStream doc).group p).m_entries = [] := by
    intro p
    unfold Reader.group Reader.start
    match p with
    | 0 => exact ⟨rfl, rfl⟩
    | 1 => exact ⟨rfl, rfl⟩
    | (k + 2) => exact ⟨rfl, rfl⟩
  constructor
  · intro u p hp
    cases hp
  · intro u p hp
    cases hp
  · intro u p hp
    cases hp
  · intro u p hp
    cases hp
  · intro e x hx
    rw [hE] at hx
    cases hx
  · intro e x hx
    rw [hE] at hx
    cases hx
  · intro e x hx
    rw [hE] at hx
    cases hx
  · intro _ e x hx
    rw [hE] at hx
    cases hx
  · intro _ p c hc
    rw [(hG p).1] at hc
    cases hc
  · intro _ p c hc
    rw [(hG p).2] at hc
    cases hc

/-- The state of the heaps at the end of every decode: the registries, the
histories and, unless an error is raised, the child lists, the entry lists and
the root group are sound. -/
theorem readDatabaseFuel_heap (env : Env) (fuel : Nat) (strictMode : Bool)
    (binaryPool : List (String × QByteArray)) (randomStream : Option QByteArray)
    (doc : XmlElement) (r : Reader)
    (hr : readDatabaseFuel env fuel strictMode binaryPool randomStream doc = some r) :
    RootOk true r := by
  unfold readDatabaseFuel at hr
  have f1 : RootOk false (readNextStartElement
      (Reader.start strictMode binaryPool randomStream doc)).2 :=
    rootOk_readNext ⟨heapInv_start strictMode binaryPool randomStream doc, fun hc => by cases hc⟩
  split at hr
  · rename_i x st1 heq
    rw [heq] at f1
    split at hr
    · split at hr
      · cases hr
      · rename_i ok st2 hp
        cases hr
        exact readDatabaseFinish_heap env ok st2 (parseKeePassFile_heap env fuel st1 (ok, st2) hp f1.1)
    · cases hr
      exact readDatabaseFinish_heap env false st1 f1
  · rename_i st1 heq
    rw [heq] at f1
    cases hr
    exact readDatabaseFinish_heap env false st1 f1

/-! ### A decode without error leaves the cursor behind each element -/

theorem ensureEntryUuid_pending (env : Env) (t : Nat) (st : Reader) :
    (ensureEntryUuid env t st).pending = st.pending :=
  ensureEntryUuid_stable (stableLeaf_pending st.pending) rfl

theorem ensureGroupUuid_pending (env : Env) (t : Nat) (st : Reader) :
    (ensureGroupUuid env t st).pending = st.pending :=
  ensureGroupUuid_stable (stableLeaf_pending st.pending) rfl

theorem mergeEntry_pending (history : Bool) (t : Nat) (st : Reader) :
    (mergeEntry history t st).2.pending = st.pending := by
  unfold mergeEntry
  split
  · split
    · simp
    · split
      · rename_i e s1 he
        have : s1.pending = st.pending := by
          have := getEntry_pending (st.entry t).m_uuid st
          rw [he] at this
          exact this
        simp [this]
      · rename_i s1 he
        have := getEntry_pending (st.entry t).m_uuid st
        rw [he] at this
        exact this
  · split
    · simp
    · rfl

theorem mergeGroup_pending (t : Nat) (st : Reader) :
    (mergeGroup t st).2.pending = st.pending := by
  unfold mergeGroup
  split
  · split
    · rename_i e s1 he
      have : s1.pending = st.pending := by
        have := getGroup_pending (st.group t).m_uuid st
        rw [he] at this
        exact this
      simp [this]
    · rename_i s1 he
      have := getGroup_pending (st.group t).m_uuid st
      rw [he] at this
      exact this
  · split
    · simp
    · rfl

theorem parseEntryFinish_pending (env : Env) (history : Bool) (l : EntryLocals) (st : Reader) :
    (parseEntryFinish env history l st).2.pending = st.pending := by
  rw [parseEntryFinish_parts]
  simp only [Reader.addBinaryRefs, addHistoryItems_pending, mergeEntry_pending,
    ensureEntryUuid_pending]

theorem parseGroupFinish_pending (env : Env) (l : GroupLocals) (st : Reader) :
    (parseGroupFinish env l st).2.pending = st.pending := by
  rw [parseGroupFinish_parts]
  simp only [foldl_setGroup_pending, foldl_setParent_pending, mergeGroup_pending,
    ensureGroupUuid_pending]

theorem hasError_false_of_stable {st r : Reader}
    (h : st.hasError = true → r.hasError = true) (hr : r.hasError = false) :
    st.hasError = false := by
  by_contra hc
  have := h (by simpa using hc)
  rw [hr] at this
  cases this

theorem xmlError_false_of_hasError {st : Reader} (h : st.hasError = false) :
    st.xmlError = false := by
  unfold Reader.hasError at h
  simp only [Bool.or_eq_false_iff] at h
  exact h.2

theorem parseEntryField_pending (env : Env) (entry : Nat) (c : XmlElement)
    (s : List (String × String) × Reader) :
    (parseEntryField env entry c s).2.pending = s.2.pending :=
  parseEntryField_stable (stableLeaf_pending s.2.pending) rfl

theorem parseGroupField_pending (env : Env) (group : Nat) (c : XmlElement) (st : Reader) :
    (parseGroupField env group c st).pending = st.pending :=
  parseGroupField_stable (stableLeaf_pending st.pending) rfl

/-- What the cursor does at the start of a round of a loop over the child
elements `cs`, in a state without error. -/
theorem readNext_cases {st : Reader} {cs : List XmlElement} {up : List (List XmlElement)}
    (hp : st.pending = cs :: up) (hx : st.xmlError = false) :
    (cs = [] ∧ readNextStartElement st = (none, st.setPending up)) ∨
    (∃ x rest, cs = x :: rest ∧
      readNextStartElement st = (some x, st.setPending (x.children :: rest :: up))) := by
  cases cs with
  | nil => exact Or.inl ⟨rfl, readNextStartElement_nil hx hp⟩
  | cons x rest => exact Or.inr ⟨x, rest, rfl, readNextStartElement_cons hx hp⟩

/-- An `Entry` element read without error leaves the cursor behind its end. -/
theorem entry_sync (env : Env) (n : Nat) :
    (∀ history l st r cs up, st.pending = cs :: up →
      parseEntryWhile env n history l st = some r → r.2.hasError = false → r.2.pending = up) ∧
    (∀ history st r cs up, st.pending = cs :: up →
      parseEntry env n history st = some r → r.2.hasError = false → r.2.pending = up) ∧
    (∀ items st r cs up, st.pending = cs :: up →
      parseEntryHistoryWhile env n items st = some r → r.2.hasError = false →
      r.2.pending = up) ∧
    (∀ st r cs up, st.pending = cs :: up →
      parseEntryHistory env n st = some r → r.2.hasError = false → r.2.pending = up) := by
  induction n with
  | zero => simp [parseEntryWhile, parseEntry, parseEntryHistoryWhile, parseEntryHistory]
  | succ n ih =>
    obtain ⟨ihW, ihE, ihHW, ihH⟩ := ih
    have st_aux := parseEntry_stable_aux stable_hasError env n
    refine ⟨?_, ?_, ?_, ?_⟩
    · intro history l st r cs up hp hr he
      have hst : st.hasError = false := by
        by_contra hc
        have := (parseEntry_stable_aux stable_hasError env (n + 1)).1 history l st r
          (by simpa using hc) hr
        rw [he] at this
        cases this
      unfold parseEntryWhile at hr
      rcases readNext_cases hp (xmlError_false_of_hasError hst) with ⟨_, h1⟩ | ⟨x, rest, _, h1⟩
      · rw [h1] at hr
        cases hr
        rfl
      · rw [h1] at hr
        simp only at hr
        split at hr
        · split at hr
          · exfalso
            have := st_aux.1 _ _ _ r (hasError_raiseError _ _) hr
            rw [he] at this
            cases this
          · split at hr
            · cases hr
            · rename_i items st2 hh
              have he2 : st2.hasError = false := by
                by_contra hc
                have := st_aux.1 _ _ _ r (by simpa using hc) hr
                rw [he] at this
                cases this
              have hp2 := ihH _ (items, st2) x.children (rest :: up) rfl hh he2
              exact ihW _ _ _ r rest up hp2 hr he
        · refine ihW _ _ _ r rest up ?_ hr he
          exact endElement_pending (c := x.children)
            ((parseEntryField_pending env l.entry x _).trans rfl)
    · intro history st r cs up hp hr he
      rw [parseEntry_succ] at hr
      split at hr
      · cases hr
      · rename_i l st3 hw
        cases hr
        have he3 : st3.hasError = false := by
          by_contra hc
          have : (parseEntryFinish env history l st3).2.hasError = true :=
            parseEntryFinish_stable stable_hasError (by simpa using hc)
          rw [he] at this
          cases this
        have := ihW history _ _ (l, st3) cs up (by simpa [Reader.newEntry] using hp) hw he3
        rw [parseEntryFinish_pending]
        exact this
    · intro items st r cs up hp hr he
      have hst : st.hasError = false := by
        by_contra hc
        have := (parseEntry_stable_aux stable_hasError env (n + 1)).2.2.1 items st r
          (by simpa using hc) hr
        rw [he] at this
        cases this
      unfold parseEntryHistoryWhile at hr
      rcases readNext_cases hp (xmlError_false_of_hasError hst) with ⟨_, h1⟩ | ⟨x, rest, _, h1⟩
      · rw [h1] at hr
        cases hr
        rfl
      · rw [h1] at hr
        simp only at hr
        split at hr
        · split at hr
          · cases hr
          · rename_i e st2 hh
            have he2 : st2.hasError = false := by
              by_contra hc
              have := st_aux.2.2.1 _ _ r (by simpa using hc) hr
              rw [he] at this
              cases this
            have hp2 := ihE true _ (e, st2) x.children (rest :: up) rfl hh he2
            exact ihHW _ _ r rest up hp2 hr he
        · exact ihHW _ _ r rest up (endElement_pending (c := x.children) rfl) hr he
    · intro st r cs up hp hr he
      rw [parseEntryHistory] at hr
      exact ihHW [] st r cs up hp hr he

/-- A `Group` element read without error leaves the cursor behind its end. -/
theorem group_sync (env : Env) (n : Nat) :
    (∀ l st r cs up, st.pending = cs :: up →
      parseGroupWhile env n l st = some r → r.2.hasError = false → r.2.pending = up) ∧
    (∀ st r cs up, st.pending = cs :: up →
      parseGroup env n st = some r → r.2.hasError = false → r.2.pending = up) := by
  induction n with
  | zero => simp [parseGroupWhile, parseGroup]
  | succ n ih =>
    obtain ⟨ihW, ihG⟩ := ih
    have st_aux := parseGroup_stable_aux stable_hasError env n
    refine ⟨?_, ?_⟩
    · intro l st r cs up hp hr he
      have hst : st.hasError = false := by
        by_contra hc
        have := (parseGroup_stable_aux stable_hasError env (n + 1)).1 l st r
          (by simpa using hc) hr
        rw [he] at this
        cases this
      unfold parseGroupWhile at hr
      rcases readNext_cases hp (xmlError_false_of_hasError hst) with ⟨_, h1⟩ | ⟨x, rest, _, h1⟩
      · rw [h1] at hr
        cases hr
        rfl
      · rw [h1] at hr
        simp only at hr
        split at hr
        · split at hr
          · cases hr
          · rename_i g st2 hg
            have he2 : st2.hasError = false := by
              by_contra hc
              have := st_aux.1 _ _ r (by simpa using hc) hr
              rw [he] at this
              cases this
            have hp2 := ihG _ (g, st2) x.children (rest :: up) rfl hg he2
            exact ihW _ _ r rest up hp2 hr he
        · split at hr
          · split at hr
            · cases hr
            · rename_i e st2 hg
              have he2 : st2.hasError = false := by
                by_contra hc
                have := st_aux.1 _ _ r (by simpa using hc) hr
                rw [he] at this
                cases this
              have hp2 := (entry_sync env n).2.1 false _ (e, st2) x.children (rest :: up) rfl
                hg he2
              exact ihW _ _ r rest up hp2 hr he
          · refine ihW _ _ r rest up ?_ hr he
            exact endElement_pending (c := x.children)
              ((parseGroupField_pending env l.group x _).trans rfl)
    · intro st r cs up hp hr he
      unfold parseGroup at hr
      simp only at hr
      split at hr
      · cases hr
      · rename_i l st3 hw
        cases hr
        have he3 : st3.hasError = false := by
          by_contra hc
          have : (parseGroupFinish env l st3).2.hasError = true :=
            parseGroupFinish_stable stable_hasError (by simpa using hc)
          rw [he] at this
          cases this
        have := ihW _ _ (l, st3) cs up (by simpa [Reader.newGroup] using hp) hw he3
        rw [parseGroupFinish_pending]
        exact this

theorem parseDeletedObjects_pending (env : Env) (x : XmlElement) (st : Reader) :
    (parseDeletedObjects env x st).pending = st.pending :=
  parseDeletedObjects_stable (stableLeaf_pending st.pending) rfl

theorem parseMeta_pending (env : Env) (x : XmlElement) (st : Reader) :
    (parseMeta env x st).pending = st.pending :=
  parseMeta_stable (stableLeaf_pending st.pending) rfl

/-- A `Root` element with a second `Group` element ends in error; one read
without error leaves the cursor behind its end. -/
theorem parseRootWhile_sync (env : Env) (n : Nat) :
    ∀ l st r cs up, st.pending = cs :: up → parseRootWhile env n l st = some r →
      r.2.hasError = false →
      r.2.pending = up ∧
        (cs.filter (fun c => c.name = "Group")).length +
          (if l.groupElementFound then 1 else 0) ≤ 1 := by
  induction n with
  | zero => simp [parseRootWhile]
  | succ n ih =>
    intro l st r cs up hp hr he
    have st_aux := parseRootWhile_stable stable_hasError env n
    have hst : st.hasError = false := by
      by_contra hc
      have := parseRootWhile_stable stable_hasError env (n + 1) l st r (by simpa using hc) hr
      rw [he] at this
      cases this
    unfold parseRootWhile at hr
    rcases readNext_cases hp (xmlError_false_of_hasError hst) with ⟨hcs, h1⟩ | ⟨x, rest, hcs, h1⟩
    · rw [h1] at hr
      cases hr
      refine ⟨rfl, ?_⟩
      rw [hcs]
      simp only [List.filter_nil, List.length_nil, zero_add]
      split <;> omega
    · rw [h1] at hr
      simp only at hr
      rw [hcs]
      split at hr
      · rename_i hname
        split at hr
        · exfalso
          have := st_aux _ _ r (hasError_raiseError _ _) hr
          rw [he] at this
          cases this
        · rename_i hfound
          split at hr
          · cases hr
          · rename_i g st2 hg
            have he4 : ((st2.setRootGroup g).deleteGroup st2.rootGroup).hasError = false := by
              by_contra hc
              have := st_aux _ _ r (by simpa using hc) hr
              rw [he] at this
              cases this
            have he2 : st2.hasError = false := by
              simpa [Reader.hasError, Reader.deleteGroup, Reader.setRootGroup] using he4
            have hp2 := (group_sync env n).2 _ (g, st2) x.children (rest :: up) rfl hg he2
            have := ih ⟨true, true⟩ _ r rest up (by simpa using hp2) hr he
            refine ⟨this.1, ?_⟩
            have h2 := this.2
            simp only [if_true] at h2
            rw [List.filter_cons_of_pos (by simpa using hname), List.length_cons,
              if_neg hfound]
            omega
      · rename_i hname
        rw [List.filter_cons_of_neg (by simpa using hname)]
        split at hr
        · refine ih l _ r rest up ?_ hr he
          exact endElement_pending (c := x.children)
            ((parseDeletedObjects_pending env x _).trans rfl)
        · exact ih l _ r rest up (endElement_pending (c := x.children) rfl) hr he

/-- The flag of `parseKeePassFile` stays false once a second `Root` element is
met. -/
theorem parseKeePassFileWhile_flag (env : Env) (n : Nat) :
    ∀ l st r, parseKeePassFileWhile env n l st = some r → l.rootElementFound = true →
      l.rootParsedSuccessfully = false → r.1.rootParsedSuccessfully = false := by
  induction n with
  | zero => simp [parseKeePassFileWhile]
  | succ n ih =>
    intro l st r hr h1 h2
    unfold parseKeePassFileWhile at hr
    split at hr
    · cases hr
      exact h2
    · split at hr
      · exact ih l _ r hr h1 h2
      · split at hr
        · exact ih _ _ r hr h1 rfl
        · exact ih l _ r hr h1 h2

/-- The document element read without error and with the flag of success has
one `Root` element at most, with one `Group` element at most. -/
theorem parseKeePassFileWhile_sync (env : Env) (n : Nat) :
    ∀ l st r cs up, st.pending = cs :: up → parseKeePassFileWhile env n l st = some r →
      r.2.hasError = false → r.1.rootParsedSuccessfully = true →
      r.2.pending = up ∧
        (cs.filter (fun c => c.name = "Root")).length +
          (if l.rootElementFound then 1 else 0) ≤ 1 ∧
        (l.rootElementFound = false → ∀ c ∈ cs, c.name = "Root" →
          (c.children.filter (fun g => g.name = "Group")).length ≤ 1) := by
  induction n with
  | zero => simp [parseKeePassFileWhile]
  | succ n ih =>
    intro l st r cs up hp hr he hf
    have st_aux := parseKeePassFileWhile_stable stable_hasError env n
    have hst : st.hasError = false := by
      by_contra hc
      have := parseKeePassFileWhile_stable stable_hasError env (n + 1) l st r
        (by simpa using hc) hr
      rw [he] at this
      cases this
    have hr0 := hr
    unfold parseKeePassFileWhile at hr
    rcases readNext_cases hp (xmlError_false_of_hasError hst) with ⟨hcs, h1⟩ | ⟨x, rest, hcs, h1⟩
    · rw [h1] at hr
      cases hr
      refine ⟨rfl, ?_, ?_⟩
      · rw [hcs]
        simp only [List.filter_nil, List.length_nil, zero_add]
        split <;> omega
      · intro _ c hc
        rw [hcs] at hc
        cases hc
    · rw [h1] at hr
      simp only at hr
      rw [hcs]
      split at hr
      · rename_i hname
        have hne : ¬ x.name = "Root" := by
          rw [hname]
          decide
        have := ih l _ r rest up (endElement_pending (c := x.children)
          ((parseMeta_pending env x _).trans rfl)) hr he hf
        rw [List.filter_cons_of_neg (by simpa using hne)]
        refine ⟨this.1, this.2.1, ?_⟩
        intro hl c hc hcn
        rcases List.mem_cons.mp hc with e1 | e1
        · rw [e1] at hcn
          exact absurd hcn hne
        · exact this.2.2 hl c e1 hcn
      · split at hr
        · rename_i hname
          split at hr
          · exfalso
            rename_i hfound
            have := parseKeePassFileWhile_flag env n _ _ r hr hfound rfl
            rw [hf] at this
            cases this
          · rename_i hfound
            split at hr
            · cases hr
            · rename_i ok st2 hroot
              have he2 : st2.hasError = false := by
                by_contra hc
                have := st_aux _ _ r (by simpa using hc) hr
                rw [he] at this
                cases this
              cases n with
              | zero =>
                rw [parseRoot] at hroot
                cases hroot
              | succ m =>
                rw [parseRoot] at hroot
                split at hroot
                · cases hroot
                · rename_i l1 st1 hw
                  cases hroot
                  obtain ⟨s1, s2⟩ := parseRootWhile_sync env m ⟨false, false⟩ _ (l1, st2)
                    x.children (rest :: up) rfl hw he2
                  have := ih ⟨true, l1.groupParsedSuccessfully⟩ st2 r rest up s1 hr he hf
                  have h3 := this.2.1
                  simp only [if_true] at h3
                  refine ⟨this.1, ?_, ?_⟩
                  · rw [List.filter_cons_of_pos (by simpa using hname), List.length_cons,
                      if_neg hfound]
                    omega
                  · intro _ c hc hcn
                    rcases List.mem_cons.mp hc with e1 | e1
                    · rw [e1]
                      simpa using s2
                    · exfalso
                      have : c ∈ rest.filter (fun c => c.name = "Root") :=
                        List.mem_filter.mpr ⟨e1, by simpa using hcn⟩
                      have h4 : (rest.filter (fun c => c.name = "Root")).length = 0 := by
                        omega
                      rw [List.length_eq_zero] at h4
                      rw [h4] at this
                      cases this
        · rename_i hn1 hname
          have := ih l _ r rest up (endElement_pending (c := x.children) rfl) hr he hf
          rw [List.filter_cons_of_neg (by simpa using hname)]
          refine ⟨this.1, this.2.1, ?_⟩
          intro hl c hc hcn
          rcases List.mem_cons.mp hc with e1 | e1
          · rw [e1] at hcn
            exact absurd hcn hname
          · exact this.2.2 hl c e1 hcn

/-! ### More than one root group -/

theorem hasError_readDatabaseFinish (env : Env) (st : Reader) :
    (readDatabaseFinish env true st).hasError = st.hasError := by
  obtain ⟨h1, h2, _⟩ := readDatabaseFinish_obs env st 0
  unfold Reader.hasError
  rw [h1, h2]

theorem start_pending (strictMode : Bool) (binaryPool : List (String × QByteArray))
    (randomStream : Option QByteArray) (doc : XmlElement) :
    readNextStartElement (Reader.start strictMode binaryPool randomStream doc) =
      (some doc, (Reader.start strictMode binaryPool randomStream doc).setPending
        (doc.children :: [] :: [])) :=
  readNextStartElement_cons rfl rfl

/-- A decode without error has read one `Root` element at most, with one
`Group` element at most. -/
theorem readDatabaseFuel_single_root (env : Env) (fuel : Nat) (strictMode : Bool)
    (binaryPool : List (String × QByteArray)) (randomStream : Option QByteArray)
    (doc : XmlElement) (r : Reader)
    (hr : readDatabaseFuel env fuel strictMode binaryPool randomStream doc = some r)
    (he : r.hasError = false) :
    hasSecondRoot doc = false ∧ hasSecondRootGroup doc = false := by
  unfold readDatabaseFuel at hr
  rw [start_pending] at hr
  simp only at hr
  have hfalse : ∀ s : Reader, (readDatabaseFinish env false s).hasError = true := by
    intro s
    unfold readDatabaseFinish
    rw [if_pos (by simp)]
    exact hasError_raiseError _ _
  split at hr
  · cases fuel with
    | zero =>
      rw [parseKeePassFile] at hr
      cases hr
    | succ n =>
      rw [parseKeePassFile] at hr
      cases hw : parseKeePassFileWhile env n ⟨false, false⟩
          ((Reader.start strictMode binaryPool randomStream doc).setPending
            (doc.children :: [] :: [])) with
      | none =>
        rw [hw] at hr
        cases hr
      | some w =>
        rw [hw] at hr
        obtain ⟨l, st1⟩ := w
        simp only [Option.some.injEq] at hr
        subst hr
        cases hok : l.rootParsedSuccessfully with
        | false =>
          rw [hok, hfalse] at he
          cases he
        | true =>
          rw [hok, hasError_readDatabaseFinish] at he
          obtain ⟨_, s2, s3⟩ := parseKeePassFileWhile_sync env n ⟨false, false⟩ _ (l, st1)
            doc.children ([] :: []) rfl hw he hok
          constructor
          · unfold hasSecondRoot
            simp only [decide_eq_false_iff_not, not_le]
            simp only [Bool.false_eq_true, if_false, add_zero] at s2
            omega
          · unfold hasSecondRootGroup
            rw [List.any_eq_false]
            intro c hc
            simp only [Bool.and_eq_true, decide_eq_true_eq, not_and, not_le]
            intro hcn
            have := s3 rfl c hc hcn
            omega
  · cases hr
    rw [hfalse] at he
    cases he

/-! ### History inside a history entry -/

/-- A history entry read without error has no `History` element among its
child elements. -/
theorem parseEntryWhile_no_history (env : Env) (n : Nat) :
    ∀ l st r cs up, st.pending = cs :: up → parseEntryWhile env n true l st = some r →
      r.2.hasError = false → cs.any (fun c => c.name = "History") = false := by
  induction n with
  | zero => simp [parseEntryWhile]
  | succ n ih =>
    intro l st r cs up hp hr he
    have st_aux := parseEntry_stable_aux stable_hasError env n
    have hst : st.hasError = false := by
      by_contra hc
      have := (parseEntry_stable_aux stable_hasError env (n + 1)).1 true l st r
        (by simpa using hc) hr
      rw [he] at this
      cases this
    unfold parseEntryWhile at hr
    rcases readNext_cases hp (xmlError_false_of_hasError hst) with ⟨hcs, h1⟩ | ⟨x, rest, hcs, h1⟩
    · rw [hcs]
      rfl
    · rw [h1] at hr
      simp only at hr
      rw [hcs]
      split at hr
      · exfalso
        simp only [if_true] at hr
        have := st_aux.1 _ _ _ r (hasError_raiseError _ _) hr
        rw [he] at this
        cases this
      · rename_i hname
        have := ih _ _ r rest up (endElement_pending (c := x.children)
          ((parseEntryField_pending env l.entry x _).trans rfl)) hr he
        rw [List.any_cons, this]
        simpa using hname

theorem parseEntry_no_history (env : Env) (n : Nat) (st : Reader) (r : Nat × Reader)
    (cs : List XmlElement) (up : List (List XmlElement)) (hp : st.pending = cs :: up)
    (hr : parseEntry env n true st = some r) (he : r.2.hasError = false) :
    cs.any (fun c => c.name = "History") = false := by
  cases n with
  | zero =>
    rw [parseEntry] at hr
    cases hr
  | succ n =>
    rw [parseEntry_succ] at hr
    split at hr
    · cases hr
    · rename_i l st3 hw
      cases hr
      have he3 : st3.hasError = false := by
        by_contra hc
        have : (parseEntryFinish env true l st3).2.hasError = true :=
          parseEntryFinish_stable stable_hasError (by simpa using hc)
        rw [he] at this
        cases this
      exact parseEntryWhile_no_history env n _ _ (l, st3) cs up
        (by simpa [Reader.newEntry] using hp) hw he3

/-! ### The elements that a decode without error has read -/

theorem anyUnderGroup_eq (gBad : List XmlElement → Bool) (eBad : Bool → List XmlElement → Bool)
    (x : XmlElement) :
    x.anyUnderGroup gBad eBad =
      if x.name = "Group" then gBad x.children || anyUnderGroupList gBad eBad x.children
      else if x.name = "Entry" then eBad false x.children || anyUnderEntry eBad x.children
      else false := by
  cases x with
  | mk n a t cs => simp [XmlElement.anyUnderGroup, XmlElement.name, XmlElement.children]

theorem anyUnderGroupList_cons (gBad : List XmlElement → Bool)
    (eBad : Bool → List XmlElement → Bool) (x : XmlElement) (xs : List XmlElement) :
    anyUnderGroupList gBad eBad (x :: xs) =
      (x.anyUnderGroup gBad eBad || anyUnderGroupList gBad eBad xs) := by
  simp [anyUnderGroupList]

/-- The state of the heaps after a `Group` child element of a `Group` element:
the local group keeps its UUID. -/
theorem groupAt_after_group {x : Nat} {a st1 st2 : Reader} {l : GroupLocals} {g : Nat}
    (env : Env) (n : Nat) (h : GroupAt x a l.group l st1)
    (hg : parseGroup env n st1 = some (g, st2)) :
    GroupAt x a l.group { l with children := l.children ++ [g] } st2 ∧
      (st2.group l.group).m_uuid = (st1.group l.group).m_uuid := by
  obtain ⟨g1, g2, g3⟩ := (group_heap env n).2 st1 (g, st2) (l.group + 1) st1 hg h.inv
    (HeapExt.here _ st1)
  obtain ⟨_, g4, _⟩ := (group_heap env n).2 st1 (g, st2) x st1 hg h.inv (HeapExt.here x st1)
  refine ⟨⟨g1, freshG_ext h.fresh g2, ?_, h.ext.join g4⟩, g2.guuid _ h.fresh.lt (by omega)⟩
  intro hs
  obtain ⟨k1, k2⟩ := localsOk_ext h.locals g2 hs
  refine ⟨?_, k2⟩
  intro c1 hc1
  rcases List.mem_append.mp hc1 with hc2 | hc2
  · exact k1 c1 hc2
  · rw [List.mem_singleton.mp hc2]
    exact g3 hs

/-- The state of the heaps after an `Entry` child element of a `Group`
element: the local group keeps its UUID. -/
theorem groupAt_after_entry {x : Nat} {a st1 st2 : Reader} {l : GroupLocals} {e : Nat}
    (env : Env) (n : Nat) (h : GroupAt x a l.group l st1)
    (hg : parseEntry env n false st1 = some (e, st2)) :
    GroupAt x a l.group { l with entries := l.entries ++ [e] } st2 ∧
      (st2.group l.group).m_uuid = (st1.group l.group).m_uuid := by
  obtain ⟨g1, g2, g3⟩ := parseEntry_heap env n (e, st2) h.inv (HeapExt.here (l.group + 1) st1) hg
  obtain ⟨_, g4, _⟩ := parseEntry_heap env n (e, st2) h.inv (HeapExt.here x st1) hg
  refine ⟨⟨g1, freshG_ext h.fresh g2, ?_, h.ext.join g4⟩, g2.guuid _ h.fresh.lt (by omega)⟩
  intro hs
  obtain ⟨k1, k2⟩ := localsOk_ext h.locals g2 hs
  refine ⟨k1, ?_⟩
  intro c1 hc1
  rcases List.mem_append.mp hc1 with hc2 | hc2
  · exact k2 c1 hc2
  · rw [List.mem_singleton.mp hc2]
    exact g3 hs

theorem groupAt_after_field {x : Nat} {a st1 : Reader} {l : GroupLocals} (env : Env)
    (c : XmlElement) (ha : a.groups.length ≤ l.group) (h : GroupAt x a l.group l st1) :
    GroupAt x a l.group l (parseGroupField env l.group c st1).endElement :=
  groupAt_endElement (parseGroupField_at (leafAt_groupAt x a l.group l 0)
    (fun _ _ u hs => groupAt_setUuid ha u hs) h)

theorem groupAt_start {st : Reader} (h : HeapInv st) :
    GroupAt 0 st st.groups.length ⟨st.groups.length, [], []⟩
      (st.newGroup.2.updGroup st.groups.length (fun g => { g with m_updateTimeinfo := false })) := by
  obtain ⟨N1, N2⟩ := heapInv_newGroup h
  have N3 := heapInv_updGroup_data N1 st.groups.length
    (fun g => { g with m_updateTimeinfo := false }) (fun _ => rfl)
  have N5 := heapExt_updGroup_data (heapExt_newGroup (HeapExt.here 0 st)) st.groups.length
    (fun g => { g with m_updateTimeinfo := false }) (fun _ => rfl)
  exact ⟨N3, ⟨by simpa using N2.lt, fun u hu => N2.unreg u (by simpa using hu)⟩,
    fun _ => ⟨fun c hc => absurd hc (List.not_mem_nil c),
      fun c hc => absurd hc (List.not_mem_nil c)⟩, N5⟩

theorem strict_of_entry {env : Env} {n : Nat} {b : Bool} :
    (∀ history l st r, st.m_strictMode = b → parseEntryWhile env n history l st = some r →
      r.2.m_strictMode = b) ∧
    (∀ history st r, st.m_strictMode = b → parseEntry env n history st = some r →
      r.2.m_strictMode = b) ∧
    (∀ items st r, st.m_strictMode = b → parseEntryHistoryWhile env n items st = some r →
      r.2.m_strictMode = b) ∧
    (∀ st r, st.m_strictMode = b → parseEntryHistory env n st = some r →
      r.2.m_strictMode = b) :=
  parseEntry_stable_aux (stable_strictMode b) env n

theorem noError_of_entry {env : Env} {n : Nat} :
    (∀ history l st r, parseEntryWhile env n history l st = some r → r.2.hasError = false →
      st.hasError = false) ∧
    (∀ history st r, parseEntry env n history st = some r → r.2.hasError = false →
      st.hasError = false) ∧
    (∀ items st r, parseEntryHistoryWhile env n items st = some r → r.2.hasError = false →
      st.hasError = false) ∧
    (∀ st r, parseEntryHistory env n st = some r → r.2.hasError = false →
      st.hasError = false) := by
  obtain ⟨h1, h2, h3, h4⟩ := parseEntry_stable_aux stable_hasError env n
  refine ⟨?_, ?_, ?_, ?_⟩
  · intro history l st r hr he
    exact hasError_false_of_stable (fun h => h1 history l st r h hr) he
  · intro history st r hr he
    exact hasError_false_of_stable (fun h => h2 history st r h hr) he
  · intro items st r hr he
    exact hasError_false_of_stable (fun h => h3 items st r h hr) he
  · intro st r hr he
    exact hasError_false_of_stable (fun h => h4 st r h hr) he

theorem noError_of_group {env : Env} {n : Nat} :
    (∀ l st r, parseGroupWhile env n l st = some r → r.2.hasError = false →
      st.hasError = false) ∧
    (∀ st r, parseGroup env n st = some r → r.2.hasError = false → st.hasError = false) := by
  obtain ⟨h1, h2⟩ := parseGroup_stable_aux stable_hasError env n
  refine ⟨?_, ?_⟩
  · intro l st r hr he
    exact hasError_false_of_stable (fun h => h1 l st r h hr) he
  · intro st r hr he
    exact hasError_false_of_stable (fun h => h2 st r h hr) he

/-- The history entries below an `Entry` element outside history that is read
without error pass the check that every history entry read without error
passes. -/
theorem entry_walk (env : Env) (b : Bool) (eBad : Bool → List XmlElement → Bool)
    (HE : ∀ n h st r cs up, parseEntry env n h st = some r → st.pending = cs :: up →
      st.m_strictMode = b → r.2.hasError = false → eBad h cs = false) (n : Nat) :
    (∀ l st r cs up, st.pending = cs :: up → st.m_strictMode = b →
      parseEntryWhile env n false l st = some r → r.2.hasError = false →
      anyUnderEntry eBad cs = false) ∧
    (∀ items st r cs up, st.pending = cs :: up → st.m_strictMode = b →
      parseEntryHistoryWhile env n items st = some r → r.2.hasError = false →
      anyHistoryEntry eBad cs = false) ∧
    (∀ st r cs up, st.pending = cs :: up → st.m_strictMode = b →
      parseEntryHistory env n st = some r → r.2.hasError = false →
      anyHistoryEntry eBad cs = false) := by
  induction n with
  | zero => simp [parseEntryWhile, parseEntryHistoryWhile, parseEntryHistory]
  | succ n ih =>
    obtain ⟨ihW, ihHW, ihH⟩ := ih
    refine ⟨?_, ?_, ?_⟩
    · intro l st r cs up hp hs hr he
      have hst := noError_of_entry.1 false l st r hr he
      unfold parseEntryWhile at hr
      rcases readNext_cases hp (xmlError_false_of_hasError hst) with ⟨hcs, h1⟩ | ⟨x, rest, hcs, h1⟩
      · rw [hcs]
        rfl
      · rw [h1] at hr
        simp only at hr
        rw [hcs]
        unfold anyUnderEntry
        rw [List.any_cons]
        split at hr
        · rename_i hname
          simp only [Bool.false_eq_true, if_false] at hr
          split at hr
          · cases hr
          · rename_i items st2 hh
            have he2 := noError_of_entry.1 false _ st2 r hr he
            have hs2 : st2.m_strictMode = b := strict_of_entry.2.2.2 _ (items, st2) (by simpa using hs) hh
            have hp2 := (entry_sync env n).2.2.2 _ (items, st2) x.children (rest :: up) rfl hh he2
            have k1 := ihW _ st2 r rest up hp2 hs2 hr he
            have k2 := ihH _ (items, st2) x.children (rest :: up) rfl (by simpa using hs) hh he2
            unfold anyUnderEntry at k1
            rw [k1, k2]
            simp
        · rename_i hname
          have hs2 : (parseEntryField env l.entry x (l.binaryRefs,
              st.setPending (x.children :: rest :: up))).2.endElement.m_strictMode = b := by
            have : (parseEntryField env l.entry x (l.binaryRefs,
                st.setPending (x.children :: rest :: up))).2.m_strictMode = b :=
              parseEntryField_stable (stable_strictMode b).1 (by simpa using hs)
            simpa [Reader.endElement] using this
          have k1 := ihW _ _ r rest up (endElement_pending (c := x.children)
            ((parseEntryField_pending env l.entry x _).trans rfl)) hs2 hr he
          unfold anyUnderEntry at k1
          rw [k1]
          simp [hname]
    · intro items st r cs up hp hs hr he
      have hst := noError_of_entry.2.2.1 items st r hr he
      unfold parseEntryHistoryWhile at hr
      rcases readNext_cases hp (xmlError_false_of_hasError hst) with ⟨hcs, h1⟩ | ⟨x, rest, hcs, h1⟩
      · rw [hcs]
        rfl
      · rw [h1] at hr
        simp only at hr
        rw [hcs]
        unfold anyHistoryEntry
        rw [List.any_cons]
        split at hr
        · rename_i hname
          split at hr
          · cases hr
          · rename_i e st2 hh
            have he2 := noError_of_entry.2.2.1 _ st2 r hr he
            have hs2 : st2.m_strictMode = b := strict_of_entry.2.1 _ _ (e, st2) (by simpa using hs) hh
            have hp2 := (entry_sync env n).2.1 true _ (e, st2) x.children (rest :: up) rfl hh he2
            have k1 := ihHW _ st2 r rest up hp2 hs2 hr he
            have k2 := HE n true _ (e, st2) x.children (rest :: up) hh rfl (by simpa using hs) he2
            unfold anyHistoryEntry at k1
            rw [k1, k2]
            simp
        · rename_i hname
          have k1 := ihHW _ _ r rest up (endElement_pending (c := x.children) rfl)
            (by simpa [skipCurrentElement, Reader.endElement] using hs) hr he
          unfold anyHistoryEntry at k1
          rw [k1]
          simp [hname]
    · intro st r cs up hp hs hr he
      rw [parseEntryHistory] at hr
      exact ihHW [] st r cs up hp hs hr he

/-- The elements below a `Group` element that is read without error pass the
checks that every group and every entry read without error passes. -/
theorem group_walk (env : Env) (b : Bool) (gBad : List XmlElement → Bool)
    (eBad : Bool → List XmlElement → Bool)
    (HG : ∀ n st r cs up, parseGroup env n st = some r → st.pending = cs :: up →
      HeapInv st → st.m_strictMode = b → r.2.hasError = false → gBad cs = false)
    (HE : ∀ n h st r cs up, parseEntry env n h st = some r → st.pending = cs :: up →
      st.m_strictMode = b → r.2.hasError = false → eBad h cs = false) (n : Nat) :
    (∀ l st r cs up x a, st.pending = cs :: up → st.m_strictMode = b →
      a.groups.length ≤ l.group → GroupAt x a l.group l st →
      parseGroupWhile env n l st = some r → r.2.hasError = false →
      anyUnderGroupList gBad eBad cs = false) ∧
    (∀ st r cs up, st.pending = cs :: up → st.m_strictMode = b → HeapInv st →
      parseGroup env n st = some r → r.2.hasError = false →
      anyUnderGroupList gBad eBad cs = false) := by
  induction n with
  | zero => simp [parseGroupWhile, parseGroup]
  | succ n ih =>
    obtain ⟨ihW, ihG⟩ := ih
    have sG := parseGroup_stable_aux (stable_strictMode b) env n
    refine ⟨?_, ?_⟩
    · intro l st r cs up x a hp hs ha h hr he
      have hst := noError_of_group.1 l st r hr he
      unfold parseGroupWhile at hr
      have f1 := groupAt_readNext h
      rcases readNext_cases hp (xmlError_false_of_hasError hst) with ⟨hcs, h1⟩ | ⟨c, rest, hcs, h1⟩
      · rw [hcs]
        rfl
      · rw [h1] at hr f1
        simp only at hr f1
        rw [hcs, anyUnderGroupList_cons, anyUnderGroup_eq]
        have hs1 : (st.setPending (c.children :: rest :: up)).m_strictMode = b := by
          simpa using hs
        split at hr
        · rename_i hname
          split at hr
          · cases hr
          · rename_i g st2 hg
            have he2 := noError_of_group.1 _ st2 r hr he
            have hs2 : st2.m_strictMode = b := sG.2 _ (g, st2) hs1 hg
            have hp2 := (group_sync env n).2 _ (g, st2) c.children (rest :: up) rfl hg he2
            have f2 := (groupAt_after_group env n f1 hg).1
            have k1 := ihW { l with children := l.children ++ [g] } st2 r rest up x a hp2 hs2 ha
              f2 hr he
            have k2 := HG n _ (g, st2) c.children (rest :: up) hg rfl f1.inv hs1 he2
            have k3 := ihG _ (g, st2) c.children (rest :: up) rfl hs1 f1.inv hg he2
            rw [if_pos hname, k1, k2, k3]
            rfl
        · rename_i hname
          split at hr
          · rename_i hname2
            split at hr
            · cases hr
            · rename_i e st2 hg
              have he2 := noError_of_group.1 _ st2 r hr he
              have hs2 : st2.m_strictMode = b := strict_of_entry.2.1 false _ (e, st2) hs1 hg
              have hp2 := (entry_sync env n).2.1 false _ (e, st2) c.children (rest :: up) rfl
                hg he2
              have f2 := (groupAt_after_entry env n f1 hg).1
              have k1 := ihW { l with entries := l.entries ++ [e] } st2 r rest up x a hp2 hs2 ha
                f2 hr he
              have k2 := HE n false _ (e, st2) c.children (rest :: up) hg rfl hs1 he2
              have k3 : anyUnderEntry eBad c.children = false := by
                cases n with
                | zero =>
                  rw [parseEntry] at hg
                  cases hg
                | succ m =>
                  rw [parseEntry_succ] at hg
                  split at hg
                  · cases hg
                  · rename_i l3 st3 hw
                    cases hg
                    have he3 : st3.hasError = false :=
                      hasError_false_of_stable
                        (fun hh => parseEntryFinish_stable stable_hasError hh) he2
                    exact (entry_walk env b eBad HE m).1 _ _ (l3, st3) c.children (rest :: up)
                      (by simp [Reader.newEntry]) (by simpa [Reader.newEntry] using hs) hw he3
              rw [if_neg hname, if_pos hname2, k1, k2, k3]
              rfl
          · rename_i hname2
            have f2 := groupAt_after_field env c ha f1
            have hs2 : (parseGroupField env l.group c
                (st.setPending (c.children :: rest :: up))).endElement.m_strictMode = b := by
              have : (parseGroupField env l.group c
                  (st.setPending (c.children :: rest :: up))).m_strictMode = b :=
                parseGroupField_stable (stable_strictMode b).1 hs1
              simpa [Reader.endElement] using this
            have k1 := ihW l _ r rest up x a (endElement_pending (c := c.children)
              ((parseGroupField_pending env l.group c _).trans rfl)) hs2 ha f2 hr he
            rw [if_neg hname, if_neg hname2, k1]
            rfl
    · intro st r cs up hp hs h hr he
      unfold parseGroup at hr
      simp only at hr
      split at hr
      · cases hr
      · rename_i l st3 hw
        cases hr
        have he3 : st3.hasError = false :=
          hasError_false_of_stable (fun hh => parseGroupFinish_stable stable_hasError hh) he
        exact ihW ⟨st.groups.length, [], []⟩ _ (l, st3) cs up 0 st
          (by simpa [Reader.newGroup] using hp) (by simpa [Reader.newGroup] using hs)
          (le_refl _) (groupAt_start h) hw he3

/-- The `Group` elements of a `Root` element that is read without error pass
the check of groups, and so does what is below them. -/
theorem root_walk (env : Env) (b : Bool) (gBad : List XmlElement → Bool)
    (eBad : Bool → List XmlElement → Bool)
    (HG : ∀ n st r cs up, parseGroup env n st = some r → st.pending = cs :: up →
      HeapInv st → st.m_strictMode = b → r.2.hasError = false → gBad cs = false)
    (HE : ∀ n h st r cs up, parseEntry env n h st = some r → st.pending = cs :: up →
      st.m_strictMode = b → r.2.hasError = false → eBad h cs = false) (n : Nat) :
    ∀ l st r cs up, st.pending = cs :: up → st.m_strictMode = b → HeapInv st →
      parseRootWhile env n l st = some r → r.2.hasError = false →
      ∀ g ∈ cs, g.name = "Group" →
        (gBad g.children || anyUnderGroupList gBad eBad g.children) = false := by
  induction n with
  | zero => simp [parseRootWhile]
  | succ n ih =>
    intro l st r cs up hp hs h hr he
    have st_aux := parseRootWhile_stable stable_hasError env n
    have hst : st.hasError = false :=
      hasError_false_of_stable
        (fun hh => parseRootWhile_stable stable_hasError env (n + 1) l st r hh hr) he
    unfold parseRootWhile at hr
    have f1 := heapInv_readNext h
    rcases readNext_cases hp (xmlError_false_of_hasError hst) with ⟨hcs, h1⟩ | ⟨c, rest, hcs, h1⟩
    · rw [hcs]
      intro g hg
      cases hg
    · rw [h1] at hr f1
      simp only at hr f1
      rw [hcs]
      have hs1 : (st.setPending (c.children :: rest :: up)).m_strictMode = b := by
        simpa using hs
      split at hr
      · rename_i hname
        split at hr
        · exfalso
          have := st_aux _ _ r (hasError_raiseError _ _) hr
          rw [he] at this
          cases this
        · split at hr
          · cases hr
          · rename_i g st2 hg
            have he4 : ((st2.setRootGroup g).deleteGroup st2.rootGroup).hasError = false :=
              hasError_false_of_stable (fun hh => st_aux _ _ r hh hr) he
            have he2 : st2.hasError = false := by
              simpa [Reader.hasError, Reader.deleteGroup, Reader.setRootGroup] using he4
            have hs2 : st2.m_strictMode = b :=
              (parseGroup_stable_aux (stable_strictMode b) env n).2 _ (g, st2) hs1 hg
            have hp2 := (group_sync env n).2 _ (g, st2) c.children (rest :: up) rfl hg he2
            obtain ⟨g1, _, _⟩ := (group_heap env n).2 _ (g, st2) 0 _ hg f1 (HeapExt.here 0 _)
            have k1 := ih ⟨true, true⟩ _ r rest up (by simpa using hp2)
              (by simpa [Reader.deleteGroup, Reader.setRootGroup] using hs2)
              (heapInv_deleteGroup (heapInv_setRootGroup g1 g) _) hr he
            have k2 := HG n _ (g, st2) c.children (rest :: up) hg rfl f1 hs1 he2
            have k3 := (group_walk env b gBad eBad HG HE n).2 _ (g, st2) c.children (rest :: up)
              rfl hs1 f1 hg he2
            intro x hx hxn
            rcases List.mem_cons.mp hx with e1 | e1
            · rw [e1, k2, k3]
              rfl
            · exact k1 x e1 hxn
      · rename_i hname
        have hrest : ∀ s1 : Reader, s1.pending = rest :: up → s1.m_strictMode = b → HeapInv s1 →
            parseRootWhile env n l s1 = some r →
            ∀ g ∈ c :: rest, g.name = "Group" →
              (gBad g.children || anyUnderGroupList gBad eBad g.children) = false := by
          intro s1 p1 p2 p3 p4 x hx hxn
          rcases List.mem_cons.mp hx with e1 | e1
          · rw [e1] at hxn
            exact absurd hxn hname
          · exact ih l s1 r rest up p1 p2 p3 p4 he x e1 hxn
        split at hr
        · refine hrest _ (endElement_pending (c := c.children)
            ((parseDeletedObjects_pending env c _).trans rfl)) ?_ ?_ hr
          · have : (parseDeletedObjects env c
                (st.setPending (c.children :: rest :: up))).m_strictMode = b :=
              parseDeletedObjects_stable (stable_strictMode b).1 hs1
            simpa [Reader.endElement] using this
          · exact heapInv_endElement
              (parseDeletedObjects_at (leafAt_rootOk false 0 0).toLeafData
                (⟨f1, fun hc => by cases hc⟩ : RootOk false _)).1
        · exact hrest _ (endElement_pending (c := c.children) rfl)
            (by simpa [skipCurrentElement, Reader.endElement] using hs1)
            (heapInv_endElement f1) hr

/-- The `Group` elements of the `Root` elements of a document element that is
read without error and with the flag of success pass the check of groups, and
so does what is below them. -/
theorem file_walk (env : Env) (b : Bool) (gBad : List XmlElement → Bool)
    (eBad : Bool → List XmlElement → Bool)
    (HG : ∀ n st r cs up, parseGroup env n st = some r → st.pending = cs :: up →
      HeapInv st → st.m_strictMode = b → r.2.hasError = false → gBad cs = false)
    (HE : ∀ n h st r cs up, parseEntry env n h st = some r → st.pending = cs :: up →
      st.m_strictMode = b → r.2.hasError = false → eBad h cs = false) (n : Nat) :
    ∀ l st r cs up, st.pending = cs :: up → st.m_strictMode = b → HeapInv st →
      parseKeePassFileWhile env n l st = some r → r.2.hasError = false →
      r.1.rootParsedSuccessfully = true →
      ∀ c ∈ cs, c.name = "Root" → ∀ g ∈ c.children, g.name = "Group" →
        (gBad g.children || anyUnderGroupList gBad eBad g.children) = false := by
  induction n with
  | zero => simp [parseKeePassFileWhile]
  | succ n ih =>
    intro l st r cs up hp hs h hr he hf
    have st_aux := parseKeePassFileWhile_stable stable_hasError env n
    have hst : st.hasError = false :=
      hasError_false_of_stable
        (fun hh => parseKeePassFileWhile_stable stable_hasError env (n + 1) l st r hh hr) he
    unfold parseKeePassFileWhile at hr
    have f1 := heapInv_readNext h
    rcases readNext_cases hp (xmlError_false_of_hasError hst) with ⟨hcs, h1⟩ | ⟨c, rest, hcs, h1⟩
    · rw [hcs]
      intro g hg
      cases hg
    · rw [h1] at hr f1
      simp only at hr f1
      rw [hcs]
      have hs1 : (st.setPending (c.children :: rest :: up)).m_strictMode = b := by
        simpa using hs
      have hrest : ∀ s1 : Reader, ¬ c.name = "Root" → s1.pending = rest :: up →
          s1.m_strictMode = b → HeapInv s1 →
          parseKeePassFileWhile env n l s1 = some r →
          ∀ x ∈ c :: rest, x.name = "Root" → ∀ g ∈ x.children, g.name = "Group" →
            (gBad g.children || anyUnderGroupList gBad eBad g.children) = false := by
        intro s1 hname p1 p2 p3 p4 x hx hxn
        rcases List.mem_cons.mp hx with e1 | e1
        · rw [e1] at hxn
          exact absurd hxn hname
        · exact ih l s1 r rest up p1 p2 p3 p4 he hf x e1 hxn
      split at hr
      · rename_i hname
        refine hrest _ (by rw [hname]; decide) (endElement_pending (c := c.children)
          ((parseMeta_pending env c _).trans rfl)) ?_ ?_ hr
        · have : (parseMeta env c (st.setPending (c.children :: rest :: up))).m_strictMode = b :=
            parseMeta_stable (stable_strictMode b).1 hs1
          simpa [Reader.endElement] using this
        · exact heapInv_endElement
            (parseMeta_at (leafAt_rootOk false 0 0) (⟨f1, fun hc => by cases hc⟩ : RootOk false _)).1
      · split at hr
        · rename_i hname
          split at hr
          · exfalso
            rename_i hfound
            have := parseKeePassFileWhile_flag env n _ _ r hr hfound rfl
            rw [hf] at this
            cases this
          · split at hr
            · cases hr
            · rename_i ok st2 hroot
              have he2 : st2.hasError = false :=
                hasError_false_of_stable (fun hh => st_aux _ _ r hh hr) he
              have hs2 : st2.m_strictMode = b :=
                parseRoot_stable (stable_strictMode b) env n _ (ok, st2) hs1 hroot
              have hI2 := (parseRoot_heap env n _ (ok, st2) hroot f1).1
              cases n with
              | zero =>
                rw [parseRoot] at hroot
                cases hroot
              | succ m =>
                rw [parseRoot] at hroot
                split at hroot
                · cases hroot
                · rename_i l1 st1 hw
                  cases hroot
                  obtain ⟨s1, _⟩ := parseRootWhile_sync env m ⟨false, false⟩ _ (l1, st2)
                    c.children (rest :: up) rfl hw he2
                  have k1 := ih ⟨true, l1.groupParsedSuccessfully⟩ st2 r rest up s1 hs2 hI2 hr he hf
                  have k2 := root_walk env b gBad eBad HG HE m ⟨false, false⟩ _ (l1, st2)
                    c.children (rest :: up) rfl hs1 f1 hw he2
                  intro x hx hxn
                  rcases List.mem_cons.mp hx with e1 | e1
                  · rw [e1]
                    exact k2
                  · exact k1 x e1 hxn
        · rename_i hname
          exact hrest _ hname (endElement_pending (c := c.children) rfl)
            (by simpa [skipCurrentElement, Reader.endElement] using hs1)
            (heapInv_endElement f1) hr

/-- In a decode without error, every element that the reader decodes as a
group or an entry passes the check that every group and every entry read without
error passes. -/
theorem readDatabaseFuel_walk (env : Env) (b : Bool) (gBad : List XmlElement → Bool)
    (eBad : Bool → List XmlElement → Bool)
    (HG : ∀ n st r cs up, parseGroup env n st = some r → st.pending = cs :: up →
      HeapInv st → st.m_strictMode = b → r.2.hasError = false → gBad cs = false)
    (HE : ∀ n h st r cs up, parseEntry env n h st = some r → st.pending = cs :: up →
      st.m_strictMode = b → r.2.hasError = false → eBad h cs = false)
    (fuel : Nat) (binaryPool : List (String × QByteArray)) (randomStream : Option QByteArray)
    (doc : XmlElement) (r : Reader)
    (hr : readDatabaseFuel env fuel b binaryPool randomStream doc = some r)
    (he : r.hasError = false) : anyInDocument gBad eBad doc = false := by
  unfold readDatabaseFuel at hr
  rw [start_pending] at hr
  simp only at hr
  have hfalse : ∀ s : Reader, (readDatabaseFinish env false s).hasError = true := by
    intro s
    unfold readDatabaseFinish
    rw [if_pos (by simp)]
    exact hasError_raiseError _ _
  split at hr
  · cases fuel with
    | zero =>
      rw [parseKeePassFile] at hr
      cases hr
    | succ n =>
      rw [parseKeePassFile] at hr
      cases hw : parseKeePassFileWhile env n ⟨false, false⟩
          ((Reader.start b binaryPool randomStream doc).setPending
            (doc.children :: [] :: [])) with
      | none =>
        rw [hw] at hr
        cases hr
      | some w =>
        rw [hw] at hr
        obtain ⟨l, st1⟩ := w
        simp only [Option.some.injEq] at hr
        subst hr
        cases hok : l.rootParsedSuccessfully with
        | false =>
          rw [hok, hfalse] at he
          cases he
        | true =>
          rw [hok, hasError_readDatabaseFinish] at he
          have k := file_walk env b gBad eBad HG HE n ⟨false, false⟩
            ((Reader.start b binaryPool randomStream doc).setPending (doc.children :: [] :: []))
            (l, st1) doc.children ([] :: []) rfl rfl
            ((heapInv_start b binaryPool randomStream doc).of_same rfl rfl rfl rfl rfl
              (fun z => z)) hw he hok
          unfold anyInDocument rootGroups
          rw [List.any_eq_false]
          intro g hg
          rw [List.mem_filter, List.mem_flatMap] at hg
          obtain ⟨⟨c, hc, hgc⟩, hgn⟩ := hg
          rw [List.mem_filter] at hc
          rw [k c hc.1 (by simpa using hc.2) g hgc (by simpa using hgn)]
          simp
  · cases hr
    rw [hfalse] at he
    cases he

/-! ### The own UUID of a group or an entry in Strict mode -/

theorem readUuid_value (env : Env) (c : XmlElement) (st : Reader) (hx : st.xmlError = false) :
    (readUuid env c st).1 = uuidOfText env c := by
  unfold readUuid readBinary readString uuidOfText
  simp only [hx, Bool.false_eq_true, if_false]
  split <;> (split <;> (try split) <;> (try split) <;> simp_all)

theorem lastUuid_cons (env : Env) (u : Uuid) (c : XmlElement) (cs : List XmlElement) :
    lastUuid env u (c :: cs) =
      lastUuid env (if c.name = "UUID" then uuidOfText env c else u) cs := rfl

theorem lastUuid_cons_other (env : Env) (u : Uuid) (c : XmlElement) (cs : List XmlElement)
    (h : ¬ c.name = "UUID") : lastUuid env u (c :: cs) = lastUuid env u cs := by
  rw [lastUuid_cons, if_neg h]

theorem lastUuid_cons_uuid (env : Env) (u : Uuid) (c : XmlElement) (cs : List XmlElement)
    (h : c.name = "UUID") : lastUuid env u (c :: cs) = lastUuid env (uuidOfText env c) cs := by
  rw [lastUuid_cons, if_pos h]

/-- The UUID of the group at `t` is kept while a child element other than
`UUID` is read. -/
theorem leafAt_groupUuid (t e : Nat) (u : Uuid) :
    LeafAt t e (fun s => t < s.groups.length ∧ (s.group t).m_uuid = u) := by
  refine ⟨⟨?_, ?_, ?_, ?_, ?_, ?_, ?_, ?_, ?_, ?_, ?_⟩, ?_, ?_⟩
  · intro st m h
    exact h
  · intro st f hf h
    refine ⟨by simpa using h.1, ?_⟩
    rw [group_updGroup, if_pos ⟨rfl, h.1⟩]
    exact (congrArg (fun z => z.2) (hf _)).trans h.2
  · intro st f hf h
    refine ⟨by simpa using h.1, ?_⟩
    rw [group_updEntry]
    exact h.2
  · intro st f h
    exact h
  · intro env st h
    exact h
  · intro env st cs c h
    exact h
  · intro st h
    exact h
  · intro st h
    exact h
  · intro st v h
    exact h
  · intro st v h
    exact h
  · intro st d h
    exact h
  · intro st v h
    obtain ⟨e1, e2, _⟩ := getGroup_effect v st
    exact ⟨lt_of_lt_of_le h.1 e1, (e2 t h.1).trans h.2⟩
  · intro st v h
    obtain ⟨e1, _, e3, _⟩ := getEntry_effect v st
    exact ⟨by rw [e1]; exact h.1, (e3 t).trans h.2⟩

/-- The UUID of the entry at `t` is kept while a child element other than
`UUID` is read. -/
theorem leafData_entryUuid (g t : Nat) (u : Uuid) :
    LeafData g t (fun s => t < s.entries.length ∧ (s.entry t).m_uuid = u) := by
  refine ⟨?_, ?_, ?_, ?_, ?_, ?_, ?_, ?_, ?_, ?_, ?_⟩
  · intro st m h
    exact h
  · intro st f hf h
    refine ⟨by simpa using h.1, ?_⟩
    rw [entry_updGroup]
    exact h.2
  · intro st f hf h
    refine ⟨by simpa using h.1, ?_⟩
    rw [entry_updEntry, if_pos ⟨rfl, h.1⟩]
    exact (congrArg (fun z => z.2.2) (hf _)).trans h.2
  · intro st f h
    exact h
  · intro env st h
    exact h
  · intro env st cs c h
    exact h
  · intro st h
    exact h
  · intro st h
    exact h
  · intro st v h
    exact h
  · intro st v h
    exact h
  · intro st d h
    exact h

theorem leafData_lengths (g e n m : Nat) :
    LeafData g e (fun s => s.groups.length = n ∧ s.entries.length = m) := by
  refine ⟨?_, ?_, ?_, ?_, ?_, ?_, ?_, ?_, ?_, ?_, ?_⟩ <;> intros <;>
    simp_all [Reader.raiseError, Reader.setMeta, Reader.randomUuid, Reader.cipherProcess]

theorem readUuid_groups (env : Env) (c : XmlElement) (st : Reader) :
    (readUuid env c st).2.groups.length = st.groups.length ∧
      (readUuid env c st).2.entries.length = st.entries.length ∧
      ((readUuid env c st).2.hasError = false → st.hasError = false) := by
  have h1 : (readUuid env c st).2.groups.length = st.groups.length ∧
      (readUuid env c st).2.entries.length = st.entries.length :=
    readUuid_at (leafData_lengths 0 0 st.groups.length st.entries.length) ⟨rfl, rfl⟩
  refine ⟨h1.1, h1.2, ?_⟩
  intro he
  exact hasError_false_of_stable (fun hh => readUuid_stable stable_hasError.1 hh) he

/-- In Strict mode a `UUID` child element of a `Group` element read without
error sets the UUID of the group to the UUID of its text. -/
theorem parseGroupField_ownUuid (env : Env) (t : Nat) (c : XmlElement) (st : Reader)
    (hc : c.name = "UUID") (ht : t < st.groups.length) (hs : st.m_strictMode = true)
    (he : (parseGroupField env t c st).hasError = false) :
    ((parseGroupField env t c st).group t).m_uuid = uuidOfText env c := by
  have hst : st.hasError = false :=
    hasError_false_of_stable (fun hh => parseGroupField_stable stable_hasError.1 hh) he
  have hv := readUuid_value env c st (xmlError_false_of_hasError hst)
  have hl := (readUuid_groups env c st).1
  have hm : (readUuid env c st).2.m_strictMode = true :=
    readUuid_stable (stable_strictMode true).1 hs
  unfold parseGroupField at he ⊢
  rw [if_pos hc] at he ⊢
  generalize readUuid env c st = R at hv hl hm he
  obtain ⟨u, st1⟩ := R
  simp only at hv hl hm he ⊢
  subst hv
  split at he
  · try rw [if_pos hm] at he
    rw [hasError_raiseError] at he
    cases he
  · rename_i hn
    rw [if_neg hn, group_updGroup, if_pos ⟨rfl, by rw [hl]; exact ht⟩]

/-- In Strict mode a `UUID` child element of an `Entry` element read without
error sets the UUID of the entry to the UUID of its text. -/
theorem parseEntryField_ownUuid (env : Env) (t : Nat) (c : XmlElement)
    (s : List (String × String) × Reader)
    (hc : c.name = "UUID") (ht : t < s.2.entries.length) (hs : s.2.m_strictMode = true)
    (he : (parseEntryField env t c s).2.hasError = false) :
    ((parseEntryField env t c s).2.entry t).m_uuid = uuidOfText env c := by
  have hst : s.2.hasError = false :=
    hasError_false_of_stable (fun hh => parseEntryField_stable stable_hasError.1 hh) he
  have hv := readUuid_value env c s.2 (xmlError_false_of_hasError hst)
  have hl := (readUuid_groups env c s.2).2.1
  have hm : (readUuid env c s.2).2.m_strictMode = true :=
    readUuid_stable (stable_strictMode true).1 hs
  unfold parseEntryField at he ⊢
  rw [if_pos hc] at he ⊢
  generalize readUuid env c s.2 = R at hv hl hm he
  obtain ⟨u, st1⟩ := R
  simp only at hv hl hm he ⊢
  subst hv
  split at he
  · try rw [if_pos hm] at he
    simp only at he
    rw [hasError_raiseError] at he
    cases he
  · rename_i hn
    rw [if_neg hn]
    simp only
    rw [entry_updEntry, if_pos ⟨rfl, by rw [hl]; exact ht⟩]

theorem hasError_endElement (st : Reader) : st.endElement.hasError = st.hasError := rfl

/-- In Strict mode, the loop of `parseGroup` read without error leaves the
local group with the UUID of the last `UUID` child element. -/
theorem parseGroupWhile_ownUuid (env : Env) (n : Nat) :
    ∀ l st r cs up x a, st.pending = cs :: up → st.m_strictMode = true →
      a.groups.length ≤ l.group → GroupAt x a l.group l st →
      parseGroupWhile env n l st = some r → r.2.hasError = false →
      (r.2.group l.group).m_uuid = lastUuid env (st.group l.group).m_uuid cs ∧
        r.1.group = l.group := by
  induction n with
  | zero => simp [parseGroupWhile]
  | succ n ih =>
    intro l st r cs up x a hp hs ha h hr he
    have sG := parseGroup_stable_aux (stable_strictMode true) env n
    have hst := noError_of_group.1 l st r hr he
    unfold parseGroupWhile at hr
    have f1 := groupAt_readNext h
    rcases readNext_cases hp (xmlError_false_of_hasError hst) with ⟨hcs, h1⟩ | ⟨c, rest, hcs, h1⟩
    · rw [h1] at hr
      cases hr
      rw [hcs]
      exact ⟨rfl, rfl⟩
    · rw [h1] at hr f1
      simp only at hr f1
      rw [hcs]
      have hs1 : (st.setPending (c.children :: rest :: up)).m_strictMode = true := by
        simpa using hs
      have hg0 : (st.setPending (c.children :: rest :: up)).group l.group = st.group l.group :=
        rfl
      split at hr
      · rename_i hname
        split at hr
        · cases hr
        · rename_i g st2 hg
          have he2 := noError_of_group.1 _ st2 r hr he
          have hs2 : st2.m_strictMode = true := sG.2 _ (g, st2) hs1 hg
          have hp2 := (group_sync env n).2 _ (g, st2) c.children (rest :: up) rfl hg he2
          obtain ⟨f2, f3⟩ := groupAt_after_group env n f1 hg
          obtain ⟨k1, k2⟩ := ih { l with children := l.children ++ [g] } st2 r rest up x a hp2 hs2
            ha f2 hr he
          refine ⟨?_, k2⟩
          rw [lastUuid_cons_other env _ c rest (by rw [hname]; decide)]
          have k1 : (r.2.group l.group).m_uuid = lastUuid env (st2.group l.group).m_uuid rest := k1
          rw [k1, f3, hg0]
      · rename_i hname
        split at hr
        · rename_i hname2
          split at hr
          · cases hr
          · rename_i e st2 hg
            have he2 := noError_of_group.1 _ st2 r hr he
            have hs2 : st2.m_strictMode = true := strict_of_entry.2.1 false _ (e, st2) hs1 hg
            have hp2 := (entry_sync env n).2.1 false _ (e, st2) c.children (rest :: up) rfl
              hg he2
            obtain ⟨f2, f3⟩ := groupAt_after_entry env n f1 hg
            obtain ⟨k1, k2⟩ := ih { l with entries := l.entries ++ [e] } st2 r rest up x a hp2 hs2
              ha f2 hr he
            refine ⟨?_, k2⟩
            rw [lastUuid_cons_other env _ c rest (by rw [hname2]; decide)]
            have k1 : (r.2.group l.group).m_uuid = lastUuid env (st2.group l.group).m_uuid rest :=
              k1
            rw [k1, f3, hg0]
        · rename_i hname2
          have f2 := groupAt_after_field env c ha f1
          have hs2 : (parseGroupField env l.group c
              (st.setPending (c.children :: rest :: up))).endElement.m_strictMode = true := by
            have : (parseGroupField env l.group c
                (st.setPending (c.children :: rest :: up))).m_strictMode = true :=
              parseGroupField_stable (stable_strictMode true).1 hs1
            simpa [Reader.endElement] using this
          have he2 := noError_of_group.1 _ _ r hr he
          rw [hasError_endElement] at he2
          obtain ⟨k1, k2⟩ := ih l _ r rest up x a (endElement_pending (c := c.children)
            ((parseGroupField_pending env l.group c _).trans rfl)) hs2 ha f2 hr he
          refine ⟨?_, k2⟩
          rw [k1]
          have hE : ∀ s : Reader, s.endElement.group l.group = s.group l.group := fun _ => rfl
          rw [hE]
          by_cases hu : c.name = "UUID"
          · rw [lastUuid_cons_uuid env _ c rest hu,
              parseGroupField_ownUuid env l.group c _ hu f1.fresh.lt hs1 he2]
          · rw [lastUuid_cons_other env _ c rest hu]
            have this : l.group < (parseGroupField env l.group c
                (st.setPending (c.children :: rest :: up))).groups.length ∧
                ((parseGroupField env l.group c
                  (st.setPending (c.children :: rest :: up))).group l.group).m_uuid =
                  (st.group l.group).m_uuid :=
              parseGroupField_at (leafAt_groupUuid l.group 0 (st.group l.group).m_uuid)
                (fun hc => absurd hc hu) ⟨f1.fresh.lt, hg0 ▸ rfl⟩
            rw [this.2]

theorem mergeGroup_null (t : Nat) (st : Reader) (h : (st.group t).m_uuid.isNull = true) :
    (mergeGroup t st).2.hasError = true := by
  unfold mergeGroup
  rw [if_neg (by simp [h])]
  cases hr : st.hasError with
  | false =>
    rw [if_pos (by simp)]
    exact hasError_raiseError _ _
  | true =>
    rw [if_neg (by simp)]
    exact hr

theorem ensureGroupUuid_strict (env : Env) (t : Nat) (st : Reader)
    (hs : st.m_strictMode = true) : ensureGroupUuid env t st = st := by
  unfold ensureGroupUuid
  rw [if_neg (by simp [hs])]

/-- In Strict mode, the code of `parseGroup` after its loop ends in error for a
local group with a null UUID. -/
theorem parseGroupFinish_null (env : Env) (l : GroupLocals) (st : Reader)
    (hs : st.m_strictMode = true) (h : (st.group l.group).m_uuid.isNull = true) :
    (parseGroupFinish env l st).2.hasError = true := by
  rw [parseGroupFinish_parts, ensureGroupUuid_strict env _ st hs]
  simp only
  rw [hasError_foldl (fun s a => by simp [Reader.hasError]),
    hasError_foldl (fun s a => by simp [Reader.hasError])]
  exact mergeGroup_null _ st h

/-- In Strict mode, a `Group` element read without error has a UUID of its own
that is not null. -/
theorem parseGroup_ownUuid (env : Env) (n : Nat) (st : Reader) (r : Nat × Reader)
    (cs : List XmlElement) (up : List (List XmlElement))
    (hr : parseGroup env n st = some r) (hp : st.pending = cs :: up) (h : HeapInv st)
    (hs : st.m_strictMode = true) (he : r.2.hasError = false) :
    (ownUuid env cs).isNull = false := by
  cases n with
  | zero =>
    rw [parseGroup] at hr
    cases hr
  | succ n =>
    unfold parseGroup at hr
    simp only at hr
    split at hr
    · cases hr
    · rename_i l st3 hw
      cases hr
      have he3 : st3.hasError = false :=
        hasError_false_of_stable (fun hh => parseGroupFinish_stable stable_hasError hh) he
      obtain ⟨k1, k2⟩ := parseGroupWhile_ownUuid env n ⟨st.groups.length, [], []⟩ _ (l, st3) cs up
        0 st (by simpa [Reader.newGroup] using hp) (by simpa [Reader.newGroup] using hs)
        (le_refl _) (groupAt_start h) hw he3
      have k2 : l.group = st.groups.length := k2
      have k1 : (st3.group st.groups.length).m_uuid = lastUuid env
          ((st.newGroup.2.updGroup st.groups.length
            (fun g => { g with m_updateTimeinfo := false })).group st.groups.length).m_uuid cs :=
        k1
      have h0 : ((st.newGroup.2.updGroup st.groups.length
          (fun g => { g with m_updateTimeinfo := false })).group st.groups.length).m_uuid =
          Uuid.null := by
        rw [group_updGroup, if_pos ⟨rfl, by simp [Reader.newGroup]⟩, group_newGroup,
          group_of_ge (le_refl _)]
        rfl
      rw [h0] at k1
      have hs3 : st3.m_strictMode = true :=
        (parseGroup_stable_aux (stable_strictMode true) env n).1 _ _ (l, st3)
          (by simpa [Reader.newGroup] using hs) hw
      by_contra hc
      have hnull : (st3.group l.group).m_uuid.isNull = true := by
        rw [k2, k1]
        simpa [ownUuid] using hc
      have := parseGroupFinish_null env l st3 hs3 hnull
      rw [he] at this
      cases this

theorem leafData_entryLt (g t : Nat) : LeafData g t (fun s => t < s.entries.length) := by
  refine ⟨?_, ?_, ?_, ?_, ?_, ?_, ?_, ?_, ?_, ?_, ?_⟩ <;> intros <;>
    simp_all [Reader.raiseError, Reader.setMeta, Reader.randomUuid, Reader.cipherProcess]

/-- In Strict mode, the loop of `parseEntry` read without error leaves the
local entry with the UUID of the last `UUID` child element. -/
theorem parseEntryWhile_ownUuid (env : Env) (n : Nat) :
    ∀ history l st r cs up, st.pending = cs :: up → st.m_strictMode = true →
      l.entry < st.entries.length →
      parseEntryWhile env n history l st = some r → r.2.hasError = false →
      (r.2.entry l.entry).m_uuid = lastUuid env (st.entry l.entry).m_uuid cs ∧
        r.1.entry = l.entry := by
  induction n with
  | zero => simp [parseEntryWhile]
  | succ n ih =>
    intro history l st r cs up hp hs ht hr he
    have st_aux := parseEntry_stable_aux stable_hasError env n
    have hst := noError_of_entry.1 history l st r hr he
    unfold parseEntryWhile at hr
    rcases readNext_cases hp (xmlError_false_of_hasError hst) with ⟨hcs, h1⟩ | ⟨c, rest, hcs, h1⟩
    · rw [h1] at hr
      cases hr
      rw [hcs]
      exact ⟨rfl, rfl⟩
    · rw [h1] at hr
      simp only at hr
      rw [hcs]
      have hs1 : (st.setPending (c.children :: rest :: up)).m_strictMode = true := by
        simpa using hs
      have hg0 : (st.setPending (c.children :: rest :: up)).entry l.entry = st.entry l.entry :=
        rfl
      have ht1 : l.entry < (st.setPending (c.children :: rest :: up)).entries.length := ht
      split at hr
      · rename_i hname
        split at hr
        · exfalso
          have := st_aux.1 _ _ _ r (hasError_raiseError _ _) hr
          rw [he] at this
          cases this
        · split at hr
          · cases hr
          · rename_i items st2 hh
            have he2 := noError_of_entry.1 _ _ st2 r hr he
            have hs2 : st2.m_strictMode = true := strict_of_entry.2.2.2 _ (items, st2) hs1 hh
            have hp2 := (entry_sync env n).2.2.2 _ (items, st2) c.children (rest :: up) rfl hh he2
            obtain ⟨f2, _⟩ := (entry_frame env n).2.2.2 _ (items, st2) hh
            have f3 : st2.entry l.entry = st.entry l.entry :=
              (f2.old l.entry ht1 (by omega)).trans hg0
            obtain ⟨k1, k2⟩ := ih _ { l with historyItems := items } st2 r rest up hp2 hs2
              (lt_of_lt_of_le ht1 f2.len) hr he
            refine ⟨?_, k2⟩
            rw [lastUuid_cons_other env _ c rest (by rw [hname]; decide)]
            have k1 : (r.2.entry l.entry).m_uuid = lastUuid env (st2.entry l.entry).m_uuid rest :=
              k1
            rw [k1, f3]
      · rename_i hname
        have hs2 : (parseEntryField env l.entry c (l.binaryRefs,
            st.setPending (c.children :: rest :: up))).2.endElement.m_strictMode = true := by
          have : (parseEntryField env l.entry c (l.binaryRefs,
              st.setPending (c.children :: rest :: up))).2.m_strictMode = true :=
            parseEntryField_stable (stable_strictMode true).1 hs1
          simpa [Reader.endElement] using this
        have he2 := noError_of_entry.1 _ _ _ r hr he
        rw [hasError_endElement] at he2
        have ht2 : l.entry < (parseEntryField env l.entry c (l.binaryRefs,
            st.setPending (c.children :: rest :: up))).2.endElement.entries.length :=
          parseEntryField_at (leafData_entryLt 0 l.entry)
            (fun _ s u hs => by simpa using hs) ht1
        obtain ⟨k1, k2⟩ := ih history
          { l with binaryRefs := (parseEntryField env l.entry c (l.binaryRefs,
            st.setPending (c.children :: rest :: up))).1 } _ r rest up
          (endElement_pending (c := c.children)
            ((parseEntryField_pending env l.entry c _).trans rfl)) hs2 ht2 hr he
        refine ⟨?_, k2⟩
        have k1 : (r.2.entry l.entry).m_uuid = lastUuid env
            ((parseEntryField env l.entry c (l.binaryRefs,
              st.setPending (c.children :: rest :: up))).2.endElement.entry l.entry).m_uuid
            rest := k1
        rw [k1]
        have hE : ∀ s : Reader, s.endElement.entry l.entry = s.entry l.entry := fun _ => rfl
        rw [hE]
        by_cases hu : c.name = "UUID"
        · rw [lastUuid_cons_uuid env _ c rest hu,
            parseEntryField_ownUuid env l.entry c _ hu ht1 hs1 he2]
        · rw [lastUuid_cons_other env _ c rest hu]
          have this : l.entry < (parseEntryField env l.entry c (l.binaryRefs,
              st.setPending (c.children :: rest :: up))).2.entries.length ∧
              ((parseEntryField env l.entry c (l.binaryRefs,
                st.setPending (c.children :: rest :: up))).2.entry l.entry).m_uuid =
                (st.entry l.entry).m_uuid :=
            parseEntryField_at (leafData_entryUuid 0 l.entry (st.entry l.entry).m_uuid)
              (fun hc => absurd hc hu) ⟨ht1, hg0 ▸ rfl⟩
          rw [this.2]

theorem mergeEntry_null (history : Bool) (t : Nat) (st : Reader)
    (h : (st.entry t).m_uuid.isNull = true) :
    (mergeEntry history t st).2.hasError = true := by
  unfold mergeEntry
  rw [if_neg (by simp [h])]
  cases hr : st.hasError with
  | false =>
    rw [if_pos (by simp)]
    exact hasError_raiseError _ _
  | true =>
    rw [if_neg (by simp)]
    exact hr

theorem ensureEntryUuid_strict (env : Env) (t : Nat) (st : Reader)
    (hs : st.m_strictMode = true) : ensureEntryUuid env t st = st := by
  unfold ensureEntryUuid
  rw [if_neg (by simp [hs])]

/-- In Strict mode, the code of `parseEntry` after its loop ends in error for a
local entry with a null UUID. -/
theorem parseEntryFinish_null (env : Env) (history : Bool) (l : EntryLocals) (st : Reader)
    (hs : st.m_strictMode = true) (h : (st.entry l.entry).m_uuid.isNull = true) :
    (parseEntryFinish env history l st).2.hasError = true := by
  rw [parseEntryFinish_parts, ensureEntryUuid_strict env _ st hs]
  exact addHistoryItems_stable stable_hasError.1 (mergeEntry_null history _ st h)

/-- In Strict mode, an `Entry` element read without error, in a history or not,
has a UUID of its own that is not null. -/
theorem parseEntry_ownUuid (env : Env) (n : Nat) (history : Bool) (st : Reader)
    (r : Nat × Reader) (cs : List XmlElement) (up : List (List XmlElement))
    (hr : parseEntry env n history st = some r) (hp : st.pending = cs :: up)
    (hs : st.m_strictMode = true) (he : r.2.hasError = false) :
    (ownUuid env cs).isNull = false := by
  cases n with
  | zero =>
    rw [parseEntry] at hr
    cases hr
  | succ n =>
    rw [parseEntry_succ] at hr
    split at hr
    · cases hr
    · rename_i l st3 hw
      cases hr
      have he3 : st3.hasError = false :=
        hasError_false_of_stable (fun hh => parseEntryFinish_stable stable_hasError hh) he
      obtain ⟨k1, k2⟩ := parseEntryWhile_ownUuid env n history ⟨st.entries.length, [], []⟩ _
        (l, st3) cs up (by simpa [Reader.newEntry] using hp)
        (by simpa [Reader.newEntry] using hs) (by simp [Reader.newEntry]) hw he3
      have k2 : l.entry = st.entries.length := k2
      have k1 : (st3.entry st.entries.length).m_uuid = lastUuid env
          ((st.newEntry.2.updEntry st.entries.length
            (fun e => { e with m_updateTimeinfo := false })).entry st.entries.length).m_uuid cs :=
        k1
      have h0 : ((st.newEntry.2.updEntry st.entries.length
          (fun e => { e with m_updateTimeinfo := false })).entry st.entries.length).m_uuid =
          Uuid.null := by
        rw [entry_updEntry, if_pos ⟨rfl, by simp [Reader.newEntry]⟩, entry_newEntry,
          entry_of_ge (le_refl _)]
        rfl
      rw [h0] at k1
      have hs3 : st3.m_strictMode = true :=
        strict_of_entry.1 history _ _ (l, st3) (by simpa [Reader.newEntry] using hs) hw
      by_contra hc
      have hnull : (st3.entry l.entry).m_uuid.isNull = true := by
        rw [k2, k1]
        simpa [ownUuid] using hc
      have := parseEntryFinish_null env history l st3 hs3 hnull
      rw [he] at this
      cases this

/-- In a Strict decode without error, every `Group` and `Entry` element that
the reader decodes as a group or an entry has a UUID of its own that is not
null. -/
theorem readDatabaseFuel_ownUuid (env : Env) (fuel : Nat)
    (binaryPool : List (String × QByteArray)) (randomStream : Option QByteArray)
    (doc : XmlElement) (r : Reader)
    (hr : readDatabaseFuel env fuel true binaryPool randomStream doc = some r)
    (he : r.hasError = false) : hasNullUuid env doc = false :=
  readDatabaseFuel_walk env true (fun cs => (ownUuid env cs).isNull)
    (fun _ cs => (ownUuid env cs).isNull)
    (fun n st r cs up h1 h2 h3 h4 h5 => parseGroup_ownUuid env n st r cs up h1 h2 h3 h4 h5)
    (fun n h st r cs up h1 h2 h3 h4 => parseEntry_ownUuid env n h st r cs up h1 h2 h3 h4)
    fuel binaryPool randomStream doc r hr he

/-! ### The groups and entries of the database after a decode without error -/

theorem groupsUnder_registered {st : Reader} (h : HeapInv st) (he : st.hasError = false) (n : Nat) :
    ∀ g, (∃ u, mapGet u st.m_groups = some g) →
      ∀ x ∈ st.groupsUnder n g, ∃ u, mapGet u st.m_groups = some x := by
  induction n with
  | zero =>
    intro g _ x hx
    simp [Reader.groupsUnder] at hx
  | succ n ih =>
    intro g hg x hx
    rw [Reader.groupsUnder] at hx
    rcases List.mem_cons.mp hx with e1 | e1
    · rw [e1]
      exact hg
    · rw [List.mem_flatMap] at e1
      obtain ⟨c, hc, hxc⟩ := e1
      exact ih c (h.kids he g c hc) x hxc

/-- After a decode without error, every group and every entry of the database
is in its registry, under the UUID it carries, which is not null. -/
theorem vault_registered {st : Reader} (h : RootOk true st) (he : st.hasError = false) :
    (∀ g ∈ st.vaultGroups, mapGet (st.group g).m_uuid st.m_groups = some g ∧
      (st.group g).m_uuid.isNull = false) ∧
    (∀ e ∈ st.vaultEntries, mapGet (st.entry e).m_uuid st.m_entries = some e ∧
      (st.entry e).m_uuid.isNull = false) := by
  have hG : ∀ g ∈ st.vaultGroups, ∃ u, mapGet u st.m_groups = some g :=
    groupsUnder_registered h.1 he _ _ (h.2 rfl he)
  refine ⟨?_, ?_⟩
  · intro g hg
    obtain ⟨u, hu⟩ := hG g hg
    obtain ⟨k1, k2⟩ := h.1.greg_uuid u g hu
    rw [k1]
    exact ⟨hu, k2⟩
  · intro e hev
    unfold Reader.vaultEntries at hev
    rw [List.mem_flatMap] at hev
    obtain ⟨g, hg, heg⟩ := hev
    obtain ⟨u, hu⟩ := h.1.ents he g e heg
    obtain ⟨k1, k2⟩ := h.1.ereg_uuid u e hu
    rw [k1]
    exact ⟨hu, k2⟩

/-! ### The own UUID of a group or an entry in Lenient mode -/

theorem errorState_updGroup (st : Reader) (p : Nat) (f : DbGroup → DbGroup) :
    (st.updGroup p f).errorState = st.errorState := by
  unfold Reader.updGroup; split <;> rfl

theorem errorState_updEntry (st : Reader) (p : Nat) (f : Entry → Entry) :
    (st.updEntry p f).errorState = st.errorState := by
  unfold Reader.updEntry; split <;> rfl

theorem errorState_cleanupParent (st : Reader) (c : Nat) :
    (st.cleanupParent c).errorState = st.errorState := by
  unfold Reader.cleanupParent; split
  · exact errorState_updGroup _ _ _
  · rfl

theorem errorState_setParent (st : Reader) (c p : Nat) :
    (st.setParent c p).errorState = st.errorState := by
  unfold Reader.setParent
  simp only
  rw [errorState_updGroup, errorState_updGroup, errorState_cleanupParent]

theorem errorState_setGroup (st : Reader) (e p : Nat) :
    (st.setGroup e p).errorState = st.errorState := by
  unfold Reader.setGroup; split
  · rfl
  · split <;> simp only [errorState_updGroup, errorState_updEntry]

theorem errorState_registerGroup (st : Reader) (u : Uuid) (p : Nat) :
    (st.registerGroup u p).errorState = st.errorState := rfl

theorem errorState_registerEntry (st : Reader) (u : Uuid) (p : Nat) :
    (st.registerEntry u p).errorState = st.errorState := rfl

theorem errorState_getGroup (u : Uuid) (st : Reader) :
    (getGroup u st).2.errorState = st.errorState := by
  cases hu : u.isNull with
  | true => rw [getGroup_null hu]
  | false =>
    cases hm : mapGet u st.m_groups with
    | some p => rw [getGroup_old hu hm]; rfl
    | none =>
      rw [getGroup_new hu hm]
      simp only [errorState_registerGroup, errorState_setParent, errorState_updGroup]
      rfl

theorem errorState_getEntry (u : Uuid) (st : Reader) :
    (getEntry u st).2.errorState = st.errorState := by
  cases hu : u.isNull with
  | true => rw [getEntry_null hu]
  | false =>
    cases hm : mapGet u st.m_entries with
    | some p => rw [getEntry_old hu hm]; rfl
    | none =>
      rw [getEntry_new hu hm]
      simp only [errorState_registerEntry, errorState_setGroup, errorState_updEntry]
      rfl

theorem hasError_of_errorState {s r : Reader} (h : r.errorState = s.errorState) :
    r.hasError = s.hasError := by
  unfold Reader.errorState at h
  simp only [Prod.mk.injEq] at h
  unfold Reader.hasError
  rw [h.1, h.2.2]

theorem readString_fields (c : XmlElement) (st : Reader) :
    (readString c st).2.m_error = st.m_error ∧
      (readString c st).2.m_errorStr = st.m_errorStr ∧
      (readString c st).2.m_strictMode = st.m_strictMode ∧
      (readString c st).2.randomCalls = st.randomCalls ∧
      (readString c st).2.groups = st.groups ∧
      (readString c st).2.entries = st.entries := by
  unfold readString
  split
  · exact ⟨rfl, rfl, rfl, rfl, rfl, rfl⟩
  · split
    · exact ⟨rfl, rfl, rfl, rfl, rfl, rfl⟩
    · exact ⟨rfl, rfl, rfl, rfl, rfl, rfl⟩

/-- In Lenient mode `readUuid` raises no error of the reader. -/
theorem readUuid_lenient (env : Env) (c : XmlElement) (st : Reader)
    (hs : st.m_strictMode = false) :
    (readUuid env c st).2.m_error = st.m_error ∧
      (readUuid env c st).2.m_errorStr = st.m_errorStr ∧
      (readUuid env c st).2.m_strictMode = false ∧
      (readUuid env c st).2.randomCalls = st.randomCalls ∧
      (readUuid env c st).2.groups = st.groups ∧
      (readUuid env c st).2.entries = st.entries := by
  obtain ⟨h1, h2, h3, h4, h5, h6⟩ := readString_fields c st
  have hE : (readUuid env c st).2 = (readString c st).2 := by
    unfold readUuid readBinary
    generalize readString c st = S at h3
    obtain ⟨str, s1⟩ := S
    simp only at h3 ⊢
    split
    · rfl
    · split
      · rw [if_neg (by rw [h3, hs]; simp)]
      · rfl
  rw [hE]
  exact ⟨h1, h2, h3.trans hs, h4, h5, h6⟩

/-- In Lenient mode a `UUID` child element of a `Group` element that reads as
the null UUID raises no error of the reader, and gives the group the next
random UUID. -/
theorem parseGroupField_lenient (env : Env) (t : Nat) (c : XmlElement) (st : Reader)
    (hc : c.name = "UUID") (hs : st.m_strictMode = false) (ht : t < st.groups.length)
    (hn : (readUuid env c st).1.isNull = true) :
    (parseGroupField env t c st).m_error = st.m_error ∧
      (parseGroupField env t c st).m_errorStr = st.m_errorStr ∧
      ((parseGroupField env t c st).group t).m_uuid = env.randomUuid st.randomCalls := by
  obtain ⟨h1, h2, h3, h4, h5, _⟩ := readUuid_lenient env c st hs
  unfold parseGroupField
  rw [if_pos hc]
  generalize readUuid env c st = R at hn h1 h2 h3 h4 h5
  obtain ⟨u, st1⟩ := R
  simp only at hn h1 h2 h3 h4 h5 ⊢
  rw [if_pos hn, if_neg (by simp [h3])]
  have hE := errorState_updGroup (Reader.randomUuid env st1).2 t
    (fun g => { g with m_uuid := (Reader.randomUuid env st1).1 })
  unfold Reader.errorState at hE
  simp only [Prod.mk.injEq] at hE
  refine ⟨hE.1.trans h1, hE.2.1.trans h2, ?_⟩
  rw [group_updGroup, if_pos ⟨rfl, by
    show t < st1.groups.length
    rw [h5]
    exact ht⟩]
  show env.randomUuid st1.randomCalls = _
  rw [h4]

/-- In Lenient mode a `UUID` child element of an `Entry` element that reads as
the null UUID raises no error of the reader, and gives the entry the next
random UUID. -/
theorem parseEntryField_lenient (env : Env) (t : Nat) (c : XmlElement)
    (s : List (String × String) × Reader)
    (hc : c.name = "UUID") (hs : s.2.m_strictMode = false) (ht : t < s.2.entries.length)
    (hn : (readUuid env c s.2).1.isNull = true) :
    (parseEntryField env t c s).2.m_error = s.2.m_error ∧
      (parseEntryField env t c s).2.m_errorStr = s.2.m_errorStr ∧
      ((parseEntryField env t c s).2.entry t).m_uuid = env.randomUuid s.2.randomCalls := by
  obtain ⟨h1, h2, h3, h4, _, h6⟩ := readUuid_lenient env c s.2 hs
  unfold parseEntryField
  rw [if_pos hc]
  generalize readUuid env c s.2 = R at hn h1 h2 h3 h4 h6
  obtain ⟨u, st1⟩ := R
  simp only at hn h1 h2 h3 h4 h6 ⊢
  rw [if_pos hn, if_neg (by simp [h3])]
  simp only
  have hE := errorState_updEntry (Reader.randomUuid env st1).2 t
    (fun g => { g with m_uuid := (Reader.randomUuid env st1).1 })
  unfold Reader.errorState at hE
  simp only [Prod.mk.injEq] at hE
  refine ⟨hE.1.trans h1, hE.2.1.trans h2, ?_⟩
  rw [entry_updEntry, if_pos ⟨rfl, by
    show t < st1.entries.length
    rw [h6]
    exact ht⟩]
  show env.randomUuid st1.randomCalls = _
  rw [h4]

theorem ensureGroupUuid_lenient (env : Env) (t : Nat) (st : Reader)
    (hs : st.m_strictMode = false) (ht : t < st.groups.length) :
    (ensureGroupUuid env t st).errorState = st.errorState ∧
      (ensureGroupUuid env t st).m_groups = st.m_groups ∧
      (ensureGroupUuid env t st).groups.length = st.groups.length ∧
      ((ensureGroupUuid env t st).group t).m_uuid =
        (if (st.group t).m_uuid.isNull then env.randomUuid st.randomCalls
          else (st.group t).m_uuid) := by
  unfold ensureGroupUuid
  cases hu : (st.group t).m_uuid.isNull with
  | true =>
    rw [if_pos (by simp [hs])]
    show ((st.randomUuid env).2.updGroup t (fun g => { g with m_uuid := (st.randomUuid env).1 })).errorState = _ ∧ _
    refine ⟨(errorState_updGroup _ _ _).trans rfl, by simp [Reader.randomUuid],
      by simp [Reader.randomUuid], ?_⟩
    rw [group_updGroup, if_pos ⟨rfl, ht⟩]
    rfl
  | false =>
    rw [if_neg (by simp)]
    exact ⟨rfl, rfl, rfl, by simp⟩

theorem ensureEntryUuid_lenient (env : Env) (t : Nat) (st : Reader)
    (hs : st.m_strictMode = false) (ht : t < st.entries.length) :
    (ensureEntryUuid env t st).errorState = st.errorState ∧
      (ensureEntryUuid env t st).m_entries = st.m_entries ∧
      (ensureEntryUuid env t st).entries.length = st.entries.length ∧
      (ensureEntryUuid env t st).m_strictMode = false ∧
      ((ensureEntryUuid env t st).entry t).m_uuid =
        (if (st.entry t).m_uuid.isNull then env.randomUuid st.randomCalls
          else (st.entry t).m_uuid) := by
  unfold ensureEntryUuid
  cases hu : (st.entry t).m_uuid.isNull with
  | true =>
    rw [if_pos (by simp [hs])]
    show ((st.randomUuid env).2.updEntry t (fun g => { g with m_uuid := (st.randomUuid env).1 })).errorState = _ ∧ _
    refine ⟨(errorState_updEntry _ _ _).trans rfl, by simp [Reader.randomUuid],
      by simp [Reader.randomUuid], by simpa [Reader.randomUuid] using hs, ?_⟩
    rw [entry_updEntry, if_pos ⟨rfl, ht⟩]
    rfl
  | false =>
    rw [if_neg (by simp)]
    exact ⟨rfl, rfl, rfl, hs, by simp⟩

/-- The merge of a local group with a UUID raises no error, and the group kept
carries this UUID. -/
theorem mergeGroup_uuid (t : Nat) (s : Reader) (hu : (s.group t).m_uuid.isNull = false)
    (hreg : ∀ u p, mapGet u s.m_groups = some p → p < s.groups.length)
    (ht : t < s.groups.length) :
    (mergeGroup t s).2.errorState = s.errorState ∧
      ((mergeGroup t s).2.group (mergeGroup t s).1).m_uuid = (s.group t).m_uuid := by
  obtain ⟨e, he1, he2⟩ := getGroup_some s hu
  obtain ⟨e1, e2, e3, e4, e5, e6⟩ := getGroup_effect (s.group t).m_uuid s
  have hlt : e < (getGroup (s.group t).m_uuid s).2.groups.length := by
    rcases e6 _ e he2 with h1 | h1
    · exact lt_of_lt_of_le (hreg _ e h1) e1
    · exact h1.2.1
  rw [mergeGroup_some hu he1]
  constructor
  · show (Reader.defGroup _ _ _).errorState = _
    have : ∀ (x : Reader) (u : Uuid) (p : Nat), (x.defGroup u p).errorState = x.errorState :=
      fun _ _ _ => rfl
    rw [this]
    unfold Reader.deleteGroup
    rw [errorState_updGroup, errorState_updGroup, errorState_updGroup, errorState_getGroup]
  · show ((Reader.defGroup _ _ _).group e).m_uuid = _
    have : ∀ (x : Reader) (u : Uuid) (p q : Nat), (x.defGroup u p).group q = x.group q :=
      fun _ _ _ _ => rfl
    rw [this]
    unfold Reader.deleteGroup
    rw [uuid_updGroup _ _ _ _ (by intro _; rfl), uuid_updGroup _ _ _ _ (by intro _; rfl),
      group_updGroup, if_pos ⟨rfl, hlt⟩]
    show ((getGroup (s.group t).m_uuid s).2.group t).m_uuid = _
    exact e2 t ht

theorem uuid_updEntry (st : Reader) (p q : Nat) (f : Entry → Entry)
    (hf : ∀ g, (f g).m_uuid = g.m_uuid) :
    ((st.updEntry p f).entry q).m_uuid = (st.entry q).m_uuid := by
  rw [entry_updEntry]
  split
  · rename_i h
    rw [hf, h.1]
  · rfl

/-- The merge of a local entry with a UUID raises no error, and the entry kept
carries this UUID. -/
theorem mergeEntry_uuid (history : Bool) (t : Nat) (s : Reader)
    (hu : (s.entry t).m_uuid.isNull = false)
    (hreg : ∀ u p, mapGet u s.m_entries = some p → p < s.entries.length)
    (ht : t < s.entries.length) :
    (mergeEntry history t s).2.errorState = s.errorState ∧
      (mergeEntry history t s).2.m_strictMode = s.m_strictMode ∧
      ((mergeEntry history t s).2.entry (mergeEntry history t s).1).m_uuid =
        (s.entry t).m_uuid := by
  cases history with
  | true =>
    unfold mergeEntry
    rw [if_pos (by simp [hu]), if_pos rfl]
    exact ⟨errorState_updEntry _ _ _, by simp, uuid_updEntry _ _ _ _ (by intro _; rfl)⟩
  | false =>
    obtain ⟨e, he1, he2⟩ := getEntry_some s hu
    obtain ⟨e1, e2, e3, e4, e5, e6, e7, e8, e9⟩ := getEntry_effect (s.entry t).m_uuid s
    have hlt : e < (getEntry (s.entry t).m_uuid s).2.entries.length := by
      rcases e9 _ e he2 with h1 | h1
      · exact lt_of_lt_of_le (hreg _ e h1) e2
      · exact h1.2.1
    rw [mergeEntry_some hu he1]
    refine ⟨?_, ?_, ?_⟩
    · show (Reader.defEntry _ _ _).errorState = _
      have : ∀ (x : Reader) (u : Uuid) (p : Nat), (x.defEntry u p).errorState = x.errorState :=
        fun _ _ _ => rfl
      rw [this]
      unfold Reader.deleteEntry
      rw [errorState_updEntry, errorState_updEntry, errorState_updEntry, errorState_getEntry]
    · show (Reader.defEntry _ _ _).m_strictMode = _
      simp [Reader.deleteEntry]
    · show ((Reader.defEntry _ _ _).entry e).m_uuid = _
      have : ∀ (x : Reader) (u : Uuid) (p q : Nat), (x.defEntry u p).entry q = x.entry q :=
        fun _ _ _ _ => rfl
      rw [this]
      unfold Reader.deleteEntry
      rw [uuid_updEntry _ _ _ _ (by intro _; rfl), uuid_updEntry _ _ _ _ (by intro _; rfl),
        entry_updEntry, if_pos ⟨rfl, hlt⟩]
      show ((getEntry (s.entry t).m_uuid s).2.entry t).m_uuid = _
      exact e6 t ht

/-- In Lenient mode the loop over the history items raises no error and keeps
the UUID of the entry. -/
theorem addHistoryItems_lenient (e : Nat) (items : List Nat) (st : Reader)
    (hs : st.m_strictMode = false) :
    (addHistoryItems e items st).errorState = st.errorState ∧
      ((addHistoryItems e items st).entry e).m_uuid = (st.entry e).m_uuid := by
  induction items generalizing st with
  | nil => exact ⟨rfl, rfl⟩
  | cons i rest ih =>
    rw [addHistoryItems_cons]
    have k : (addHistoryItem e i st).errorState = st.errorState ∧
        (addHistoryItem e i st).m_strictMode = false ∧
        ((addHistoryItem e i st).entry e).m_uuid = (st.entry e).m_uuid := by
      unfold addHistoryItem
      rw [errorState_updEntry, uuid_updEntry _ _ _ _ (by intro _; rfl)]
      split
      · rw [if_neg (by simp [hs])]
        refine ⟨errorState_updEntry _ _ _, by simpa using hs, ?_⟩
        rw [entry_updEntry]
        split <;> rfl
      · exact ⟨rfl, by simpa using hs, rfl⟩
    obtain ⟨k1, k2⟩ := ih (addHistoryItem e i st) k.2.1
    exact ⟨k1.trans k.1, k2.trans k.2.2⟩

/-- In Lenient mode the code of `parseGroup` after its loop raises no error, and
the group it returns carries a UUID that is not null when the random source
gives none: the next random UUID for a local group with a null UUID, and else
the UUID of the local group. -/
theorem parseGroupFinish_lenient (env : Env) (l : GroupLocals) (st : Reader)
    (hs : st.m_strictMode = false)
    (hreg : ∀ u p, mapGet u st.m_groups = some p → p < st.groups.length)
    (ht : l.group < st.groups.length)
    (hn : (env.randomUuid st.randomCalls).isNull = false) :
    (parseGroupFinish env l st).2.errorState = st.errorState ∧
      ((parseGroupFinish env l st).2.group (parseGroupFinish env l st).1).m_uuid =
        (if (st.group l.group).m_uuid.isNull then env.randomUuid st.randomCalls
          else (st.group l.group).m_uuid) ∧
      ((parseGroupFinish env l st).2.group (parseGroupFinish env l st).1).m_uuid.isNull =
        false := by
  obtain ⟨a1, a2, a3, a4⟩ := ensureGroupUuid_lenient env l.group st hs ht
  have hu : ((ensureGroupUuid env l.group st).group l.group).m_uuid.isNull = false := by
    rw [a4]
    split
    · exact hn
    · rename_i h
      simpa using h
  obtain ⟨b1, b2⟩ := mergeGroup_uuid l.group (ensureGroupUuid env l.group st) hu
    (by rw [a2, a3]; exact hreg) (by rw [a3]; exact ht)
  rw [parseGroupFinish_parts]
  generalize mergeGroup l.group (ensureGroupUuid env l.group st) = M at b1 b2
  have c1 : (List.foldl (fun s entry => s.setGroup entry M.1)
      (List.foldl (fun s child => s.setParent child M.1) M.2 l.children) l.entries).errorState =
      M.2.errorState := by
    rw [foldl_obs Reader.errorState (fun s a => errorState_setGroup s a M.1),
      foldl_obs Reader.errorState (fun s a => errorState_setParent s a M.1)]
  have c2 : ((List.foldl (fun s entry => s.setGroup entry M.1)
      (List.foldl (fun s child => s.setParent child M.1) M.2 l.children) l.entries).group
        M.1).m_uuid = (M.2.group M.1).m_uuid := by
    rw [foldl_obs (fun s : Reader => (s.group M.1).m_uuid)
        (fun s a => (setGroup_effect s a M.1).2.2.1 M.1),
      foldl_obs (fun s : Reader => (s.group M.1).m_uuid) (fun s a => uuid_setParent s a M.1 M.1)]
  have c3 := c2.trans (b2.trans a4)
  refine ⟨c1.trans (b1.trans a1), c3, ?_⟩
  show (Uuid.isNull (DbGroup.m_uuid (Reader.group _ M.1))) = false
  rw [c2, b2]
  exact hu

/-- In Lenient mode the code of `parseEntry` after its loop raises no error, in
a history or not, and the entry it returns carries a UUID that is not null when
the random source gives none. -/
theorem parseEntryFinish_lenient (env : Env) (history : Bool) (l : EntryLocals) (st : Reader)
    (hs : st.m_strictMode = false)
    (hreg : ∀ u p, mapGet u st.m_entries = some p → p < st.entries.length)
    (ht : l.entry < st.entries.length)
    (hn : (env.randomUuid st.randomCalls).isNull = false) :
    (parseEntryFinish env history l st).2.errorState = st.errorState ∧
      ((parseEntryFinish env history l st).2.entry
        (parseEntryFinish env history l st).1).m_uuid =
        (if (st.entry l.entry).m_uuid.isNull then env.randomUuid st.randomCalls
          else (st.entry l.entry).m_uuid) ∧
      ((parseEntryFinish env history l st).2.entry
        (parseEntryFinish env history l st).1).m_uuid.isNull = false := by
  obtain ⟨a1, a2, a3, a5, a4⟩ := ensureEntryUuid_lenient env l.entry st hs ht
  have hu : ((ensureEntryUuid env l.entry st).entry l.entry).m_uuid.isNull = false := by
    rw [a4]
    split
    · exact hn
    · rename_i h
      simpa using h
  obtain ⟨b1, b3, b2⟩ := mergeEntry_uuid history l.entry (ensureEntryUuid env l.entry st) hu
    (by rw [a2, a3]; exact hreg) (by rw [a3]; exact ht)
  rw [parseEntryFinish_parts]
  generalize mergeEntry history l.entry (ensureEntryUuid env l.entry st) = M at b1 b2 b3
  obtain ⟨c1, c2⟩ := addHistoryItems_lenient M.1 l.historyItems M.2 (b3.trans a5)
  have d1 : ∀ (x : Reader) (v : List (String × Nat × String)),
      (x.addBinaryRefs v).errorState = x.errorState := fun _ _ => rfl
  have d2 : ∀ (x : Reader) (v : List (String × Nat × String)) (q : Nat),
      (x.addBinaryRefs v).entry q = x.entry q := fun _ _ _ => rfl
  simp only [d1, d2]
  refine ⟨c1.trans (b1.trans a1), c2.trans (b2.trans a4), ?_⟩
  rw [c2, b2]
  exact hu

/-! ### History items -/

/-- In a decode without error, no history entry has a `History` element among
its child elements. -/
theorem readDatabaseFuel_noNestedHistory (env : Env) (fuel : Nat) (b : Bool)
    (binaryPool : List (String × QByteArray)) (randomStream : Option QByteArray)
    (doc : XmlElement) (r : Reader)
    (hr : readDatabaseFuel env fuel b binaryPool randomStream doc = some r)
    (he : r.hasError = false) : hasNestedHistory doc = false :=
  readDatabaseFuel_walk env b (fun _ => false)
    (fun h cs => h && cs.any (fun c => c.name = "History"))
    (fun _ _ _ _ _ _ _ _ _ _ => rfl)
    (fun n h st r cs up h1 h2 _ h4 => by
      cases h with
      | false => rfl
      | true =>
        have := parseEntry_no_history env n st r cs up h2 h1 h4
        simpa using this)
    fuel binaryPool randomStream doc r hr he

/-- The branch of the loop of `parseEntry` for a `History` element inside a
history entry. -/
theorem parseEntryWhile_history (env : Env) (n : Nat) (l : EntryLocals) (st st1 : Reader)
    (x : XmlElement) (h : readNextStartElement st = (some x, st1)) (hx : x.name = "History") :
    parseEntryWhile env (n + 1) true l st =
      parseEntryWhile env n true l (st1.raiseError "History element in history entry") := by
  rw [parseEntryWhile, h]
  simp only [hx, if_true]

/-- In Strict mode the loop over the history items keeps every UUID, and ends
with the error `History element with different uuid` when an item carries
another UUID than the entry, or when this error was the last one before. -/
theorem addHistoryItems_strict (e : Nat) (items : List Nat) (st : Reader)
    (hs : st.m_strictMode = true)
    (h : (st.m_error = true ∧ st.m_errorStr = "History element with different uuid") ∨
      ∃ i ∈ items, (st.entry i).m_uuid ≠ (st.entry e).m_uuid) :
    (addHistoryItems e items st).m_error = true ∧
      (addHistoryItems e items st).m_errorStr = "History element with different uuid" := by
  induction items generalizing st with
  | nil =>
    rcases h with h | ⟨i, hi, _⟩
    · exact h
    · cases hi
  | cons i rest ih =>
    rw [addHistoryItems_cons]
    have hU : ∀ q, ((addHistoryItem e i st).entry q).m_uuid = (st.entry q).m_uuid := by
      intro q
      unfold addHistoryItem
      rw [uuid_updEntry _ _ _ _ (by intro _; rfl)]
      split
      · try rw [if_pos hs]
        rfl
      · rfl
    have hS : (addHistoryItem e i st).m_strictMode = true := by
      unfold addHistoryItem
      simp only [Reader.updEntry_m_strictMode]
      split
      · try rw [if_pos hs]
        exact hs
      · exact hs
    have hE : (addHistoryItem e i st).errorState =
        (if (st.entry i).m_uuid ≠ (st.entry e).m_uuid then
          (true, "History element with different uuid", st.xmlError) else st.errorState) := by
      unfold addHistoryItem
      rw [errorState_updEntry]
      split
      · try rw [if_pos hs]
        rfl
      · rfl
    apply ih (addHistoryItem e i st) hS
    by_cases hd : (st.entry i).m_uuid ≠ (st.entry e).m_uuid
    · left
      rw [if_pos hd] at hE
      unfold Reader.errorState at hE
      simp only [Prod.mk.injEq] at hE
      exact ⟨hE.1, hE.2.1⟩
    · rw [if_neg hd] at hE
      unfold Reader.errorState at hE
      simp only [Prod.mk.injEq] at hE
      rcases h with h | ⟨j, hj, hjd⟩
      · left
        exact ⟨hE.1.trans h.1, hE.2.1.trans h.2⟩
      · right
        rcases List.mem_cons.mp hj with e1 | e1
        · rw [e1] at hjd
          exact absurd hjd hd
        · exact ⟨j, e1, by rw [hU, hU]; exact hjd⟩

/-- In Lenient mode a round of the loop over the history items raises no error
and leaves the item with the UUID of the entry, in the history of the entry. -/
theorem addHistoryItem_lenient (e i : Nat) (st : Reader) (hs : st.m_strictMode = false)
    (hi : i < st.entries.length) (he : e < st.entries.length) :
    (addHistoryItem e i st).errorState = st.errorState ∧
      ((addHistoryItem e i st).entry i).m_uuid = (st.entry e).m_uuid ∧
      ((addHistoryItem e i st).entry e).m_uuid = (st.entry e).m_uuid ∧
      ((addHistoryItem e i st).entry e).m_history = (st.entry e).m_history ++ [i] := by
  unfold addHistoryItem
  by_cases hd : (st.entry i).m_uuid ≠ (st.entry e).m_uuid
  · rw [if_pos hd, if_neg (by simp [hs])]
    have hie : i ≠ e := by
      intro e1
      rw [e1] at hd
      exact hd rfl
    refine ⟨by rw [errorState_updEntry, errorState_updEntry], ?_, ?_, ?_⟩
    · rw [uuid_updEntry _ _ _ _ (by intro _; rfl), entry_updEntry, if_pos ⟨rfl, hi⟩]
    · rw [uuid_updEntry _ _ _ _ (by intro _; rfl), entry_updEntry,
        if_neg (by intro hc; exact hie hc.1.symm)]
    · rw [entry_updEntry, if_pos ⟨rfl, by simpa using he⟩, entry_updEntry,
        if_neg (by intro hc; exact hie hc.1.symm)]
  · rw [if_neg hd]
    refine ⟨errorState_updEntry _ _ _, ?_, ?_, ?_⟩
    · rw [uuid_updEntry _ _ _ _ (by intro _; rfl)]
      exact not_not.mp hd
    · rw [uuid_updEntry _ _ _ _ (by intro _; rfl)]
    · rw [entry_updEntry, if_pos ⟨rfl, he⟩]

/-- After every decode, each history item of an entry has no history of its
own, and in Lenient mode it carries the UUID of the entry. -/
theorem readDatabaseFuel_history (env : Env) (fuel : Nat) (strictMode : Bool)
    (binaryPool : List (String × QByteArray)) (randomStream : Option QByteArray)
    (doc : XmlElement) (r : Reader)
    (hr : readDatabaseFuel env fuel strictMode binaryPool randomStream doc = some r) :
    (∀ e h, h ∈ (r.entry e).m_history → (r.entry h).m_history = []) ∧
    (strictMode = false → ∀ e h, h ∈ (r.entry e).m_history →
      (r.entry h).m_uuid = (r.entry e).m_uuid) := by
  have hI := (readDatabaseFuel_heap env fuel strictMode binaryPool randomStream doc r hr).1
  have hS : r.m_strictMode = strictMode :=
    readDatabaseFuel_stable (stable_strictMode strictMode) rfl hr
  exact ⟨hI.hist_nil, fun hs => hI.hist_uuid (hS.trans hs)⟩

/-! ### The two stages of a decode -/

theorem readDatabaseFuel_stages (env : Env) (fuel : Nat) (strictMode : Bool)
    (binaryPool : List (String × QByteArray)) (randomStream : Option QByteArray)
    (doc : XmlElement) :
    readDatabaseFuel env fuel strictMode binaryPool randomStream doc =
      (parseStage env fuel strictMode binaryPool randomStream doc).map
        (fun p => readDatabaseFinish env p.1 p.2) := by
  unfold readDatabaseFuel parseStage
  split
  · split
    · cases parseKeePassFile env fuel _ with
      | none => rfl
      | some p => rfl
    · rfl
  · rfl

theorem errorState_resolveBinaries (items : List (String × Nat × String)) (s : Reader) :
    (resolveBinaries items s).errorState = s.errorState := by
  induction items generalizing s with
  | nil => rfl
  | cons x rest ih =>
    obtain ⟨id, entry, name⟩ := x
    unfold resolveBinaries
    simp only
    rw [ih, errorState_updEntry]
    split
    · rfl
    · rfl

theorem errorState_enableUpdates (s : Reader) : (enableUpdates s).errorState = s.errorState := by
  unfold enableUpdates
  simp only
  rw [foldl_obs Reader.errorState, foldl_obs Reader.errorState]
  · rfl
  · intro t a
    exact errorState_updGroup _ _ _
  · intro t a
    rw [foldl_obs Reader.errorState]
    · exact errorState_updEntry _ _ _
    · intro t2 b
      exact errorState_updEntry _ _ _

/-- The closing code of `readDatabase` with a root group parsed raises no
error, whatever the pool and the references of the entries. -/
theorem errorState_readDatabaseFinish (env : Env) (st : Reader) :
    (readDatabaseFinish env true st).errorState = st.errorState := by
  unfold readDatabaseFinish
  rw [if_neg (by simp)]
  exact (errorState_enableUpdates _).trans (errorState_resolveBinaries _ _)

/-- In Strict mode the code of `parseEntry` after its loop ends with the error
`History element with different uuid` when a history item carries another UUID
than the entry kept. -/
theorem parseEntryFinish_strict_history (env : Env) (l : EntryLocals) (st : Reader)
    (hs : st.m_strictMode = true)
    (h : ∃ i ∈ l.historyItems, ((mergeEntry false l.entry st).2.entry i).m_uuid ≠
      ((mergeEntry false l.entry st).2.entry (mergeEntry false l.entry st).1).m_uuid) :
    (parseEntryFinish env false l st).2.m_error = true ∧
      (parseEntryFinish env false l st).2.m_errorStr = "History element with different uuid" := by
  rw [parseEntryFinish_parts, ensureEntryUuid_strict env _ st hs]
  have hm : (mergeEntry false l.entry st).2.m_strictMode = true :=
    mergeEntry_stable (stable_strictMode true) hs
  exact addHistoryItems_strict _ _ _ hm (Or.inr h)

/-! ### C15: more than one top-level root group -/

/-- C15: in Strict and in Lenient mode, a document whose document element has a
second `Root` element, or one of whose `Root` elements has a second `Group`
element, ends the decode in error, whatever the pool. With a keystream cipher
the decode returns, without any dereference of a null `m_randomStream`, and
`hasError` is true; and whatever the cipher, null or not, a decode that returns
has `hasError` true. The documents `Sample.docTwoRootGroups` and
`Sample.docTwoRoots` end in both modes with the error text `No root group`,
which `readDatabase` raises when `parseKeePassFile` returns false. -/
theorem C15_multiple_root_groups (env : Env) (strictMode : Bool)
    (binaryPool : List (String × QByteArray)) (doc : XmlElement)
    (h : hasSecondRoot doc = true ∨ hasSecondRootGroup doc = true) :
    (∀ rs : QByteArray, ∃ r, readDatabase env strictMode binaryPool (some rs) doc = some r ∧
      r.nullDeref = false ∧ r.hasError = true) ∧
    (∀ (randomStream : Option QByteArray) (r : Reader),
      readDatabase env strictMode binaryPool randomStream doc = some r → r.hasError = true) ∧
    (readDatabase Env.sample true [] none Sample.docTwoRootGroups).map Reader.observeError =
      some (true, "No root group") ∧
    (readDatabase Env.sample false [] none Sample.docTwoRootGroups).map Reader.observeError =
      some (true, "No root group") ∧
    (readDatabase Env.sample true [] none Sample.docTwoRoots).map Reader.observeError =
      some (true, "No root group") ∧
    (readDatabase Env.sample false [] none Sample.docTwoRoots).map Reader.observeError =
      some (true, "No root group") := by
  have key : ∀ (randomStream : Option QByteArray) (r : Reader),
      readDatabase env strictMode binaryPool randomStream doc = some r → r.hasError = true := by
    intro randomStream r hr
    by_contra he
    obtain ⟨h1, h2⟩ := readDatabaseFuel_single_root env _ strictMode binaryPool randomStream doc
      r hr (by simpa using he)
    rcases h with h | h
    · rw [h1] at h
      cases h
    · rw [h2] at h
      cases h
  refine ⟨?_, key, rfl, rfl, rfl, rfl⟩
  intro rs
  obtain ⟨r, hr, hd⟩ := readDatabase_returns env strictMode binaryPool rs doc
  exact ⟨r, hr, hd, key _ r hr⟩

/-- Witness of C15: the decode of `Sample.docTwoRootGroups` in Strict mode with
the keystream cipher of state `[]`. -/
theorem C15_multiple_root_groups_witness :
    (hasSecondRoot Sample.docTwoRootGroups = true ∨
      hasSecondRootGroup Sample.docTwoRootGroups = true) ∧
    (∃ r, readDatabase Env.sample true [] (some []) Sample.docTwoRootGroups = some r ∧
      r.nullDeref = false ∧ r.hasError = true) :=
  ⟨Or.inr (by decide), (C15_multiple_root_groups Env.sample true [] Sample.docTwoRootGroups
    (Or.inr (by decide))).1 []⟩

/-! ### C16: a group or an entry whose own UUID is null -/

/-- C16: a `Group` or `Entry` element whose own UUID is null, that is whose
last `UUID` child element reads as the null UUID or which has no `UUID` child
element. In Strict mode the decode of a document that has such an element
where the reader decodes a group or an entry, history entries included, ends
in error: with a keystream cipher it returns, without any dereference of a
null `m_randomStream`, with `hasError` true, and whatever the cipher, null or
not, a decode that returns has `hasError` true; the code after the loop of
`parseGroup` and of `parseEntry` ends in error for a local object with a null
UUID. In Lenient mode
a `UUID` child element that reads as the null UUID raises no error of the
reader and gives the object the next random UUID; the code after the loop
raises no error and returns an object that carries the next random UUID when
the local one has a null UUID, and a UUID that is not null as long as the random
source gives none that is null. After every decode without error, in either
mode, every group and every entry of the database carries a UUID that is not
null. The documents `Sample.docGroupNoUuid` and `Sample.docEntryEmptyUuid` end
in error in Strict mode and get random UUIDs in Lenient mode. -/
theorem C16_null_uuid (env : Env) :
    (∀ (binaryPool : List (String × QByteArray)) (rs : QByteArray)
      (doc : XmlElement), hasNullUuid env doc = true →
      ∃ r, readDatabase env true binaryPool (some rs) doc = some r ∧ r.nullDeref = false ∧
        r.hasError = true) ∧
    (∀ (binaryPool : List (String × QByteArray)) (randomStream : Option QByteArray)
      (doc : XmlElement) (r : Reader), hasNullUuid env doc = true →
      readDatabase env true binaryPool randomStream doc = some r → r.hasError = true) ∧
    (∀ (l : GroupLocals) (st : Reader), st.m_strictMode = true →
      (st.group l.group).m_uuid.isNull = true → (parseGroupFinish env l st).2.hasError = true) ∧
    (∀ (history : Bool) (l : EntryLocals) (st : Reader), st.m_strictMode = true →
      (st.entry l.entry).m_uuid.isNull = true →
      (parseEntryFinish env history l st).2.hasError = true) ∧
    (∀ (t : Nat) (c : XmlElement) (st : Reader), c.name = "UUID" → st.m_strictMode = false →
      t < st.groups.length → (readUuid env c st).1.isNull = true →
      (parseGroupField env t c st).m_error = st.m_error ∧
        (parseGroupField env t c st).m_errorStr = st.m_errorStr ∧
        ((parseGroupField env t c st).group t).m_uuid = env.randomUuid st.randomCalls) ∧
    (∀ (t : Nat) (c : XmlElement) (s : List (String × String) × Reader), c.name = "UUID" →
      s.2.m_strictMode = false → t < s.2.entries.length → (readUuid env c s.2).1.isNull = true →
      (parseEntryField env t c s).2.m_error = s.2.m_error ∧
        (parseEntryField env t c s).2.m_errorStr = s.2.m_errorStr ∧
        ((parseEntryField env t c s).2.entry t).m_uuid = env.randomUuid s.2.randomCalls) ∧
    (∀ (l : GroupLocals) (st : Reader), st.m_strictMode = false →
      (∀ u p, mapGet u st.m_groups = some p → p < st.groups.length) →
      l.group < st.groups.length → (env.randomUuid st.randomCalls).isNull = false →
      (parseGroupFinish env l st).2.errorState = st.errorState ∧
        ((parseGroupFinish env l st).2.group (parseGroupFinish env l st).1).m_uuid =
          (if (st.group l.group).m_uuid.isNull then env.randomUuid st.randomCalls
            else (st.group l.group).m_uuid) ∧
        ((parseGroupFinish env l st).2.group (parseGroupFinish env l st).1).m_uuid.isNull =
          false) ∧
    (∀ (history : Bool) (l : EntryLocals) (st : Reader), st.m_strictMode = false →
      (∀ u p, mapGet u st.m_entries = some p → p < st.entries.length) →
      l.entry < st.entries.length → (env.randomUuid st.randomCalls).isNull = false →
      (parseEntryFinish env history l st).2.errorState = st.errorState ∧
        ((parseEntryFinish env history l st).2.entry
          (parseEntryFinish env history l st).1).m_uuid =
          (if (st.entry l.entry).m_uuid.isNull then env.randomUuid st.randomCalls
            else (st.entry l.entry).m_uuid) ∧
        ((parseEntryFinish env history l st).2.entry
          (parseEntryFinish env history l st).1).m_uuid.isNull = false) ∧
    (∀ (strictMode : Bool) (binaryPool : List (String × QByteArray))
      (randomStream : Option QByteArray) (doc : XmlElement) (r : Reader),
      readDatabase env strictMode binaryPool randomStream doc = some r → r.hasError = false →
      (∀ g ∈ r.vaultGroups, (r.group g).m_uuid.isNull = false) ∧
        (∀ e ∈ r.vaultEntries, (r.entry e).m_uuid.isNull = false)) ∧
    (readDatabase Env.sample true [] none Sample.docGroupNoUuid).map Reader.observeUuids =
      some (true, "No group uuid found", Uuid.null, []) ∧
    (readDatabase Env.sample false [] none Sample.docGroupNoUuid).map Reader.observeUuids =
      some (false, "", Env.sample.randomUuid 0, []) ∧
    (readDatabase Env.sample true [] none Sample.docEntryEmptyUuid).map Reader.observeUuids =
      some (true, "Null entry uuid", ⟨[0, 1, 2, 3, 4, 5, 6, 7, 8, 9, 10, 11, 12, 13, 14, 15]⟩,
        [Uuid.null]) ∧
    (readDatabase Env.sample false [] none Sample.docEntryEmptyUuid).map Reader.observeUuids =
      some (false, "", ⟨[0, 1, 2, 3, 4, 5, 6, 7, 8, 9, 10, 11, 12, 13, 14, 15]⟩,
        [Env.sample.randomUuid 0]) := by
  have key : ∀ (binaryPool : List (String × QByteArray)) (randomStream : Option QByteArray)
      (doc : XmlElement) (r : Reader), hasNullUuid env doc = true →
      readDatabase env true binaryPool randomStream doc = some r → r.hasError = true := by
    intro binaryPool randomStream doc r h hr
    by_contra he
    have := readDatabaseFuel_ownUuid env _ binaryPool randomStream doc r hr (by simpa using he)
    rw [h] at this
    cases this
  refine ⟨?_, key, fun l st hs h => parseGroupFinish_null env l st hs h,
    fun history l st hs h => parseEntryFinish_null env history l st hs h,
    fun t c st hc hs ht hn => parseGroupField_lenient env t c st hc hs ht hn,
    fun t c s hc hs ht hn => parseEntryField_lenient env t c s hc hs ht hn,
    fun l st hs hreg ht hn => parseGroupFinish_lenient env l st hs hreg ht hn,
    fun history l st hs hreg ht hn => parseEntryFinish_lenient env history l st hs hreg ht hn,
    ?_, rfl, rfl, rfl, rfl⟩
  · intro binaryPool rs doc h
    obtain ⟨r, hr, hd⟩ := readDatabase_returns env true binaryPool rs doc
    exact ⟨r, hr, hd, key binaryPool _ doc r h hr⟩
  · intro strictMode binaryPool randomStream doc r hr he
    obtain ⟨h1, h2⟩ := vault_registered
      (readDatabaseFuel_heap env _ strictMode binaryPool randomStream doc r hr) he
    exact ⟨fun g hg => (h1 g hg).2, fun e hev => (h2 e hev).2⟩

theorem C16_null_uuid_witness :
    hasNullUuid Env.sample Sample.docEntryEmptyUuid = true ∧
    (∃ r, readDatabase Env.sample true [] (some []) Sample.docEntryEmptyUuid = some r ∧
      r.nullDeref = false ∧ r.hasError = true) ∧
    (Reader.start false [] none Sample.docGroupNoUuid).m_strictMode = false ∧
    (1 : Nat) < (Reader.start false [] none Sample.docGroupNoUuid).groups.length ∧
    (Env.sample.randomUuid (Reader.start false [] none Sample.docGroupNoUuid).randomCalls).isNull =
      false ∧
    ((parseGroupFinish Env.sample ⟨1, [], []⟩
        (Reader.start false [] none Sample.docGroupNoUuid)).2.errorState =
        (Reader.start false [] none Sample.docGroupNoUuid).errorState ∧
      ((parseGroupFinish Env.sample ⟨1, [], []⟩
          (Reader.start false [] none Sample.docGroupNoUuid)).2.group
        (parseGroupFinish Env.sample ⟨1, [], []⟩
          (Reader.start false [] none Sample.docGroupNoUuid)).1).m_uuid =
        (if ((Reader.start false [] none Sample.docGroupNoUuid).group 1).m_uuid.isNull then
          Env.sample.randomUuid (Reader.start false [] none Sample.docGroupNoUuid).randomCalls
          else ((Reader.start false [] none Sample.docGroupNoUuid).group 1).m_uuid) ∧
      ((parseGroupFinish Env.sample ⟨1, [], []⟩
          (Reader.start false [] none Sample.docGroupNoUuid)).2.group
        (parseGroupFinish Env.sample ⟨1, [], []⟩
          (Reader.start false [] none Sample.docGroupNoUuid)).1).m_uuid.isNull = false) :=
  ⟨by decide, (C16_null_uuid Env.sample).1 [] [] Sample.docEntryEmptyUuid (by decide),
    rfl, by decide, by decide,
    (C16_null_uuid Env.sample).2.2.2.2.2.2.1 ⟨1, [], []⟩
      (Reader.start false [] none Sample.docGroupNoUuid) rfl
      (fun u p h => by cases h) (by decide) (by decide)⟩

/-! ### C17: the UUID of a history item -/

/-- C18: in both modes, the loop of `parseEntry` for a history entry goes on,
at a `History` child element, from the state with the error
`History element in history entry` raised; a history entry with a `History`
element among its child elements ends in error; the decode of a document where
a history entry that the reader decodes has a `History` child element ends
with `hasError` true; and after every decode no history item of any entry has
a history of its own. Both hold of the state in which a decode with a
keystream cipher returns, which it does for every document and without any
dereference of a null `m_randomStream`, and of the state in which any decode
returns, whatever the cipher, null or not. The document `Sample.docNestedHistory` ends
in both modes with this error, and with the one history item of its entry
without history. -/
theorem C18_history_in_history (env : Env) :
    (∀ (n : Nat) (l : EntryLocals) (st st1 : Reader) (x : XmlElement),
      readNextStartElement st = (some x, st1) → x.name = "History" →
      parseEntryWhile env (n + 1) true l st =
        parseEntryWhile env n true l (st1.raiseError "History element in history entry")) ∧
    (∀ (n : Nat) (st : Reader) (r : Nat × Reader) (cs : List XmlElement)
      (up : List (List XmlElement)), parseEntry env n true st = some r →
      st.pending = cs :: up → cs.any (fun c => c.name = "History") = true →
      r.2.hasError = true) ∧
    (∀ (strictMode : Bool) (binaryPool : List (String × QByteArray))
      (rs : QByteArray) (doc : XmlElement), hasNestedHistory doc = true →
      ∃ r, readDatabase env strictMode binaryPool (some rs) doc = some r ∧
        r.nullDeref = false ∧ r.hasError = true) ∧
    (∀ (strictMode : Bool) (binaryPool : List (String × QByteArray))
      (randomStream : Option QByteArray) (doc : XmlElement) (r : Reader),
      hasNestedHistory doc = true →
      readDatabase env strictMode binaryPool randomStream doc = some r → r.hasError = true) ∧
    (∀ (strictMode : Bool) (binaryPool : List (String × QByteArray))
      (rs : QByteArray) (doc : XmlElement),
      ∃ r, readDatabase env strictMode binaryPool (some rs) doc = some r ∧
        r.nullDeref = false ∧
        ∀ e h, h ∈ (r.entry e).m_history → (r.entry h).m_history = []) ∧
    (∀ (strictMode : Bool) (binaryPool : List (String × QByteArray))
      (randomStream : Option QByteArray) (doc : XmlElement) (r : Reader),
      readDatabase env strictMode binaryPool randomStream doc = some r →
      ∀ e h, h ∈ (r.entry e).m_history → (r.entry h).m_history = []) ∧
    (readDatabase Env.sample true [] none Sample.docNestedHistory).map Reader.observeHistory =
      some (true, "History element in history entry",
        [(⟨[32, 33, 34, 35, 36, 37, 38, 39, 40, 41, 42, 43, 44, 45, 46, 47]⟩,
          [(⟨[32, 33, 34, 35, 36, 37, 38, 39, 40, 41, 42, 43, 44, 45, 46, 47]⟩, [])])]) ∧
    (readDatabase Env.sample false [] none Sample.docNestedHistory).map Reader.observeHistory =
      some (true, "History element in history entry",
        [(⟨[32, 33, 34, 35, 36, 37, 38, 39, 40, 41, 42, 43, 44, 45, 46, 47]⟩,
          [(⟨[32, 33, 34, 35, 36, 37, 38, 39, 40, 41, 42, 43, 44, 45, 46, 47]⟩, [])])]) := by
  have key : ∀ (strictMode : Bool) (binaryPool : List (String × QByteArray))
      (randomStream : Option QByteArray) (doc : XmlElement) (r : Reader),
      hasNestedHistory doc = true →
      readDatabase env strictMode binaryPool randomStream doc = some r →
      r.hasError = true := by
    intro strictMode binaryPool randomStream doc r h hr
    by_contra he
    have := readDatabaseFuel_noNestedHistory env _ strictMode binaryPool randomStream doc r hr
      (by simpa using he)
    rw [h] at this
    cases this
  refine ⟨fun n l st st1 x h hx => parseEntryWhile_history env n l st st1 x h hx, ?_, ?_, key,
    ?_, fun strictMode binaryPool randomStream doc r hr =>
      (readDatabaseFuel_history env _ strictMode binaryPool randomStream doc r hr).1,
    rfl, rfl⟩
  · intro n st r cs up hr hp hc
    by_contra he
    have := parseEntry_no_history env n st r cs up hp hr (by simpa using he)
    rw [hc] at this
    cases this
  · intro strictMode binaryPool rs doc h
    obtain ⟨r, hr, hd⟩ := readDatabase_returns env strictMode binaryPool rs doc
    exact ⟨r, hr, hd, key strictMode binaryPool _ doc r h hr⟩
  · intro strictMode binaryPool rs doc
    obtain ⟨r, hr, hd⟩ := readDatabase_returns env strictMode binaryPool rs doc
    exact ⟨r, hr, hd, (readDatabaseFuel_history env _ strictMode binaryPool _ doc r hr).1⟩

theorem C18_history_in_history_witness :
    hasNestedHistory Sample.docNestedHistory = true ∧
    (∃ r, readDatabase Env.sample true [] (some []) Sample.docNestedHistory = some r ∧
      r.nullDeref = false ∧ r.hasError = true) :=
  ⟨by decide,
    (C18_history_in_history Env.sample).2.2.1 true [] [] Sample.docNestedHistory (by decide)⟩

/-! ### C12: pool ids without reference and references without pool id -/

/-- C12: `readDatabase` is the stage that parses the document, up to the flag
that `parseKeePassFile` returns, followed by the closing code; with a root
group parsed the closing code leaves the error flag and text of the reader and
the error flag of the XML reader as they are, for every state, whatever the ids
of the pool without reference and the references without id in the pool. So for
every document and pool whose parse stage returns the flag true in a state
without error, the decode returns with `hasError` false. At the parse stage a
`Value` element with the attribute `Ref` records the reference without a look at
the pool. For the document
`Sample.docBinary` with a reference to the id `7` and the pool with the id `9`
alone, the parse stage ends without error with `7` as unmapped key and `9` as
unused key, and the decode ends in both modes without error, the attachment
holding no bytes. -/
theorem C12_unused_and_unmapped_keys (env : Env) :
    (∀ (strictMode : Bool) (binaryPool : List (String × QByteArray))
      (randomStream : Option QByteArray) (doc : XmlElement),
      readDatabase env strictMode binaryPool randomStream doc =
        (parseStage env (4 * doc.size + 2) strictMode binaryPool randomStream doc).map
          (fun p => readDatabaseFinish env p.1 p.2)) ∧
    (∀ st : Reader, (readDatabaseFinish env true st).errorState = st.errorState ∧
      (readDatabaseFinish env true st).hasError = st.hasError) ∧
    (∀ (strictMode : Bool) (binaryPool : List (String × QByteArray))
      (randomStream : Option QByteArray) (doc : XmlElement) (st : Reader),
      parseStage env (4 * doc.size + 2) strictMode binaryPool randomStream doc =
        some (true, st) → st.hasError = false →
      ∃ r, readDatabase env strictMode binaryPool randomStream doc = some r ∧
        r.hasError = false ∧ r.errorString = "") ∧
    (∀ (c : XmlElement) (s : BinaryLocals × Reader), c.hasAttribute "Ref" = true →
      parseEntryBinaryValue env c s =
        ({ s.1 with poolRef := (some (c.attr "Ref"), s.1.key), valueSet := true },
          skipChild s.2)) ∧
    (parseStage Env.sample (4 * (Sample.docBinary [Sample.binaryKey, Sample.binaryRef]).size + 2)
        true [("9", [1, 2])] none (Sample.docBinary [Sample.binaryKey, Sample.binaryRef])).map
        (fun p => (p.1, p.2.hasError, p.2.unmappedKeys, p.2.unusedKeys)) =
      some (true, false, ["7"], ["9"]) ∧
    (readDatabase Env.sample true [("9", [1, 2])] none
        (Sample.docBinary [Sample.binaryKey, Sample.binaryRef])).map Reader.observeBinary =
      some (false, [("7", 1, "file")], [("file", [])]) ∧
    (readDatabase Env.sample false [("9", [1, 2])] none
        (Sample.docBinary [Sample.binaryKey, Sample.binaryRef])).map Reader.observeBinary =
      some (false, [("7", 1, "file")], [("file", [])]) := by
  refine ⟨fun strictMode binaryPool randomStream doc =>
      readDatabaseFuel_stages env _ strictMode binaryPool randomStream doc,
    fun st => ⟨errorState_readDatabaseFinish env st,
      hasError_of_errorState (errorState_readDatabaseFinish env st)⟩, ?_, ?_, rfl, rfl, rfl⟩
  swap
  · intro c s hc
    unfold parseEntryBinaryValue
    rw [if_pos hc]
  intro strictMode binaryPool randomStream doc st hp he
  refine ⟨readDatabaseFinish env true st, ?_, ?_, ?_⟩
  · show readDatabaseFuel env (4 * doc.size + 2) strictMode binaryPool randomStream doc = _
    rw [readDatabaseFuel_stages, hp]
    rfl
  · rw [hasError_of_errorState (errorState_readDatabaseFinish env st)]
    exact he
  · have h1 := errorState_readDatabaseFinish env st
    unfold Reader.errorState at h1
    simp only [Prod.mk.injEq] at h1
    unfold Reader.hasError at he
    simp only [Bool.or_eq_false_iff] at he
    unfold Reader.errorString
    rw [h1.1, h1.2.2, he.1, he.2]
    rfl

theorem C12_unused_and_unmapped_keys_witness :
    parseStage Env.sample (4 * (Sample.docBinary [Sample.binaryKey, Sample.binaryRef]).size + 2)
        true [("9", [1, 2])] none (Sample.docBinary [Sample.binaryKey, Sample.binaryRef]) =
      some (true, ((parseStage Env.sample
        (4 * (Sample.docBinary [Sample.binaryKey, Sample.binaryRef]).size + 2)
        true [("9", [1, 2])] none
        (Sample.docBinary [Sample.binaryKey, Sample.binaryRef])).getD
          (false, Reader.start true [] none Sample.docStray)).2) ∧
    (∃ r, readDatabase Env.sample true [("9", [1, 2])] none
        (Sample.docBinary [Sample.binaryKey, Sample.binaryRef]) = some r ∧
      r.hasError = false ∧ r.errorString = "") :=
  ⟨rfl, (C12_unused_and_unmapped_keys Env.sample).2.2.1 true [("9", [1, 2])] none
    (Sample.docBinary [Sample.binaryKey, Sample.binaryRef]) _ rfl rfl⟩

/-! ### C27: `rawKey` after a failed challenge -/

theorem CompositeKey.challengeLoop_some_fail (sha256 : QByteArray → QByteArray)
    (seed prior : QByteArray) (srcs : List ChallengeResponseKey) (i : Nat) (h : CryptoHash)
    (calls : List (Nat × QByteArray)) (hk : ∃ k ∈ srcs, k.respond seed = none) :
    (CompositeKey.challengeLoop sha256 seed prior srcs i h calls).ok = false ∧
      (CompositeKey.challengeLoop sha256 seed prior srcs i h calls).result = prior := by
  induction srcs generalizing i h calls with
  | nil =>
    obtain ⟨k, hm, _⟩ := hk
    cases hm
  | cons p rest ih =>
    cases hp : p.respond seed with
    | none => simp [CompositeKey.challengeLoop, hp]
    | some r =>
      have hrest : ∃ k ∈ rest, k.respond seed = none := by
        obtain ⟨k, hm, hn⟩ := hk
        rcases List.mem_cons.mp hm with he | he
        · subst he
          rw [hp] at hn
          cases hn
        · exact ⟨k, he, hn⟩
      simpa [CompositeKey.challengeLoop, hp] using ih (i + 1) (h.addData r) _ hrest

/-- C27: for every composite key of which some challenge-response source fails
on the seed `s`, `challenge(s)` returns false and leaves the result buffer of
`rawKey` empty, and `rawKey(s)` returns the same bytes as `rawKey(nullptr)`:
the SHA-256 of the digests of the plain keys in registration order, with no
contribution of any challenge-response source, also of those that answered
before the failing one. -/
theorem C27_rawKey_ignores_failed_challenge (sha256 : QByteArray → QByteArray)
    (c : CompositeKey) (s : QByteArray)
    (hk : ∃ k ∈ c.m_challengeResponseKeys, k.respond s = none) :
    (c.challenge sha256 s []).ok = false ∧ (c.challenge sha256 s []).result = [] ∧
    c.rawKey sha256 (some s) = c.rawKey sha256 none ∧
    c.rawKey sha256 (some s) = sha256 (c.m_keys.map Key.rawKey).flatten := by
  have hne : ¬ c.m_challengeResponseKeys.length = 0 := by
    intro h0
    obtain ⟨k, hm, _⟩ := hk
    rw [List.length_eq_zero.mp h0] at hm
    cases hm
  have hl := CompositeKey.challengeLoop_some_fail sha256 s [] c.m_challengeResponseKeys 0
    CryptoHash.init [] hk
  have hc : (c.challenge sha256 s []).ok = false ∧ (c.challenge sha256 s []).result = [] := by
    simp only [CompositeKey.challenge, hne, if_false]
    exact hl
  refine ⟨hc.1, hc.2, ?_, ?_⟩
  · simp [CompositeKey.rawKey, hc.2, CryptoHash.addData, CryptoHash.result]
  · simp [CompositeKey.rawKey, hc.2, CryptoHash.addData, CryptoHash.result,
      CompositeKey.feedKeys_fed, CryptoHash.init]

/-- Witness of C27: two plain keys and three sources of which the first answers
and the second fails; the raw key is the hash of the two digests alone. -/
theorem C27_rawKey_ignores_failed_challenge_witness :
    (∃ k ∈ (⟨[⟨[1, 2]⟩, ⟨[3]⟩], [⟨fun _ => some [7]⟩, ⟨fun _ => none⟩,
        ⟨fun _ => some [9]⟩]⟩ : CompositeKey).m_challengeResponseKeys, k.respond [5] = none) ∧
    CompositeKey.rawKey id ⟨[⟨[1, 2]⟩, ⟨[3]⟩], [⟨fun _ => some [7]⟩, ⟨fun _ => none⟩,
        ⟨fun _ => some [9]⟩]⟩ (some [5]) = [1, 2, 3] :=
  ⟨⟨⟨fun _ => none⟩, by simp, rfl⟩,
    (C27_rawKey_ignores_failed_challenge id ⟨[⟨[1, 2]⟩, ⟨[3]⟩], [⟨fun _ => some [7]⟩,
      ⟨fun _ => none⟩, ⟨fun _ => some [9]⟩]⟩ [5] ⟨⟨fun _ => none⟩, by simp, rfl⟩).2.2.2⟩

/-! ### C28: the error message is that of the last error raised -/

theorem errorString_raiseError (st : Reader) (m : String) :
    (st.raiseError m).errorString = m := by
  simp [Reader.errorString, Reader.raiseError]

/-- C28: `raiseError` sets the error flag and replaces the stored message,
whatever message was stored, so `errorString()` is the message of the last
`raiseError`; the code of `readDatabase` after `parseKeePassFile`, when no root
group was parsed, ends with the message "No root group" whatever the state
reached; so every decode whose parse stage returns the flag false returns with
`hasError` true and that message. The document `Sample.docTwoErrors`, with two
invalid values in its root group, ends with the message of the second; the
documents with a failing cipher or an invalid number and no root group parsed
end with "No root group". -/
theorem C28_last_error_message (env : Env) :
    (∀ (st : Reader) (m : String),
      (st.raiseError m).hasError = true ∧ (st.raiseError m).errorString = m) ∧
    (∀ (st : Reader) (a b : String), ((st.raiseError a).raiseError b).errorString = b) ∧
    (∀ st : Reader, (readDatabaseFinish env false st).hasError = true ∧
      (readDatabaseFinish env false st).errorString = "No root group") ∧
    (∀ (strictMode : Bool) (binaryPool : List (String × QByteArray))
      (randomStream : Option QByteArray) (doc : XmlElement) (st : Reader),
      parseStage env (4 * doc.size + 2) strictMode binaryPool randomStream doc =
        some (false, st) →
      ∃ r, readDatabase env strictMode binaryPool randomStream doc = some r ∧
        r.hasError = true ∧ r.errorString = "No root group") ∧
    (readDatabase Env.sample true [] none Sample.docTwoErrors).map Reader.observeError =
      some (true, "Invalid EnableSearching value") ∧
    ((parseStage Env.sample (4 * (Sample.docSecondGroupWith
        [Sample.protectedString "Password" "AA=="]).size + 2) true [] (some [])
        (Sample.docSecondGroupWith [Sample.protectedString "Password" "AA=="])).map
        (fun p => (p.1, p.2.observeError)) = some (false, true, "Multiple group elements") ∧
      (parseStage Env.sample (4 * (Sample.docEntryWith
        [Sample.protectedString "Password" "AA=="]).size + 2) true [] (some [])
        (Sample.docEntryWith [Sample.protectedString "Password" "AA=="])).map
        (fun p => (p.1, p.2.observeError)) = some (true, true, "keystream failure")) ∧
    (readDatabase Env.sample true [] (some [])
        (Sample.docSecondGroupWith [Sample.protectedString "Password" "AA=="])).map
        Reader.observeError = some (true, "No root group") ∧
    (parseStage Env.sample (4 * Sample.docErrorNoRoot.size + 2) false [] none
        Sample.docErrorNoRoot).map (fun p => (p.1, p.2.observeError)) =
      some (false, true, "Invalid number value") ∧
    (readDatabase Env.sample false [] none Sample.docErrorNoRoot).map Reader.observeError =
      some (true, "No root group") := by
  refine ⟨fun st m => ⟨hasError_raiseError st m, errorString_raiseError st m⟩,
    fun st a b => errorString_raiseError _ b,
    fun st => ⟨hasError_raiseError st _, errorString_raiseError st _⟩, ?_,
    rfl, ⟨rfl, rfl⟩, rfl, rfl, rfl⟩
  intro strictMode binaryPool randomStream doc st hp
  refine ⟨readDatabaseFinish env false st, ?_, hasError_raiseError st _,
    errorString_raiseError st _⟩
  show readDatabaseFuel env (4 * doc.size + 2) strictMode binaryPool randomStream doc = _
  rw [readDatabaseFuel_stages, hp]
  rfl

/-- Witness of C28: the parse stage of `Sample.docErrorNoRoot` returns the flag
false, and the decode ends with "No root group". -/
theorem C28_last_error_message_witness :
    parseStage Env.sample (4 * Sample.docErrorNoRoot.size + 2) false [] none
        Sample.docErrorNoRoot =
      some (false, ((parseStage Env.sample (4 * Sample.docErrorNoRoot.size + 2) false [] none
        Sample.docErrorNoRoot).getD (true, Reader.start true [] none Sample.docStray)).2) ∧
    (∃ r, readDatabase Env.sample false [] none Sample.docErrorNoRoot = some r ∧
      r.hasError = true ∧ r.errorString = "No root group") :=
  ⟨rfl, (C28_last_error_message Env.sample).2.2.2.1 false [] none Sample.docErrorNoRoot _ rfl⟩

/-! ### C25: a failure of the keystream cipher -/

theorem forEachChild_append {σ : Type} (body : XmlElement → σ × Reader → σ × Reader)
    (pre post : List XmlElement) (s : σ × Reader) :
    forEachChild body (pre ++ post) s = forEachChild body post (forEachChild body pre s) := by
  induction pre generalizing s with
  | nil => rfl
  | cons x rest ih =>
    simp only [List.cons_append, forEachChild]
    split
    · rename_i hx
      exact (forEachChild_of_xmlError body post s hx).symm
    · exact ih _

theorem readString_cipher (c : XmlElement) (st : Reader) :
    (readString c st).2.m_randomStream = st.m_randomStream ∧
      (readString c st).2.cipherLog = st.cipherLog := by
  unfold readString
  split
  · exact ⟨rfl, rfl⟩
  · split <;> exact ⟨rfl, rfl⟩

theorem hasAttribute_of_attr {c : XmlElement} {key v : String} (h : c.attr key = v)
    (hv : v ≠ "") : c.hasAttribute key = true := by
  unfold XmlElement.attr at h
  unfold XmlElement.hasAttribute
  cases hf : c.attributes.find? (fun a => a.1 = key) with
  | none =>
    rw [hf] at h
    exact absurd h.symm hv
  | some a =>
    have h1 := List.find?_some hf
    have h2 := List.mem_of_find?_eq_some hf
    exact List.any_eq_true.mpr ⟨a, h2, h1⟩

/-- The `Value` branch of `parseEntryString` when the cipher fails. -/
theorem parseEntryStringValue_fail (env : Env) (c : XmlElement) (s : StringLocals × Reader)
    (cs cs1 : QByteArray) (err : String) (hp : c.attr "Protected" = "True")
    (hv : (readString c s.2).1.isEmpty = false) (hr : s.2.m_randomStream = some cs)
    (hf : env.process cs (env.fromBase64 (readString c s.2).1) = (.inl err, cs1)) :
    (parseEntryStringValue env c s).2.m_error = true ∧
      (parseEntryStringValue env c s).2.m_errorStr = err ∧
      (parseEntryStringValue env c s).1.value = "" ∧
      (parseEntryStringValue env c s).2.cipherLog =
        s.2.cipherLog ++ [env.fromBase64 (readString c s.2).1] := by
  have h1 := readString_cipher c s.2
  unfold parseEntryStringValue
  simp only [hp, hv, decide_True, Bool.not_false, Bool.and_self, if_true]
  rw [h1.1, hr]
  simp [Reader.cipherProcess, hf, Reader.raiseError, h1.2]

/-- The `Value` branch of `parseEntryBinary` when the cipher fails. -/
theorem parseEntryBinaryValue_fail (env : Env) (c : XmlElement) (s : BinaryLocals × Reader)
    (cs cs1 : QByteArray) (err : String) (href : c.hasAttribute "Ref" = false)
    (hp : c.attr "Protected" = "True")
    (hv : (readBinary env c s.2).1.isEmpty = false) (hr : s.2.m_randomStream = some cs)
    (hf : env.process cs (readBinary env c s.2).1 = (.inl err, cs1)) :
    (parseEntryBinaryValue env c s).2.m_error = true ∧
      (parseEntryBinaryValue env c s).2.m_errorStr = err ∧
      (parseEntryBinaryValue env c s).2.cipherLog =
        s.2.cipherLog ++ [(readBinary env c s.2).1] := by
  have h1 := readString_cipher c s.2
  have ha := hasAttribute_of_attr hp (by decide)
  unfold parseEntryBinaryValue
  rw [if_neg (by simp [href])]
  unfold readBinary at hv hf ⊢
  simp only at hv hf ⊢
  simp only [hp, ha, hv, decide_True, Bool.not_false, Bool.and_self, if_true]
  rw [h1.1, hr]
  simp [Reader.cipherProcess, hf, Reader.raiseError, h1.2]

/-- A `String` element one of whose `Value` elements makes the cipher fail ends
with the error flag set. -/
theorem parseEntryString_fail (env : Env) (entry : Nat) (x : XmlElement) (st : Reader)
    (pre post : List XmlElement) (c : XmlElement) (cs cs1 : QByteArray) (err : String)
    (hx : x.children = pre ++ c :: post) (hc : c.name = "Value")
    (hxe : (forEachChild (parseEntryStringChild env) pre
      (⟨"", "", false, false, false⟩, st)).2.xmlError = false)
    (hp : c.attr "Protected" = "True")
    (hv : (readString c (forEachChild (parseEntryStringChild env) pre
      (⟨"", "", false, false, false⟩, st)).2).1.isEmpty = false)
    (hr : (forEachChild (parseEntryStringChild env) pre
      (⟨"", "", false, false, false⟩, st)).2.m_randomStream = some cs)
    (hf : env.process cs (env.fromBase64 (readString c (forEachChild (parseEntryStringChild env)
      pre (⟨"", "", false, false, false⟩, st)).2).1) = (.inl err, cs1)) :
    (parseEntryString env entry x st).hasError = true := by
  have h1 := parseEntryStringValue_fail env c _ cs cs1 err hp hv hr hf
  have h2 : (forEachChild (parseEntryStringChild env) x.children
      (⟨"", "", false, false, false⟩, st)).2.m_error = true := by
    rw [hx, forEachChild_append]
    simp only [forEachChild, hxe, Bool.false_eq_true, if_false]
    apply forEachChild_stable (P := fun t => t.m_error = true)
      (fun c s h => parseEntryStringChild_stable stable_m_error.toStableLeaf h)
    unfold parseEntryStringChild
    rw [if_neg (by rw [hc]; decide), if_pos hc]
    exact h1.1
  unfold parseEntryString
  simp only
  split
  · split
    · exact hasError_raiseError _ _
    · simp [Reader.hasError, h2]
  · exact hasError_raiseError _ _

/-- A `Binary` element one of whose inline `Value` elements makes the cipher
fail ends with the error flag set. -/
theorem parseEntryBinary_fail (env : Env) (entry : Nat) (x : XmlElement) (st : Reader)
    (pre post : List XmlElement) (c : XmlElement) (cs cs1 : QByteArray) (err : String)
    (hx : x.children = pre ++ c :: post) (hc : c.name = "Value")
    (hxe : (forEachChild (parseEntryBinaryChild env) pre
      (⟨(none, ""), "", [], false, false⟩, st)).2.xmlError = false)
    (href : c.hasAttribute "Ref" = false) (hp : c.attr "Protected" = "True")
    (hv : (readBinary env c (forEachChild (parseEntryBinaryChild env) pre
      (⟨(none, ""), "", [], false, false⟩, st)).2).1.isEmpty = false)
    (hr : (forEachChild (parseEntryBinaryChild env) pre
      (⟨(none, ""), "", [], false, false⟩, st)).2.m_randomStream = some cs)
    (hf : env.process cs (readBinary env c (forEachChild (parseEntryBinaryChild env)
      pre (⟨(none, ""), "", [], false, false⟩, st)).2).1 = (.inl err, cs1)) :
    (parseEntryBinary env entry x st).2.hasError = true := by
  have h1 := parseEntryBinaryValue_fail env c _ cs cs1 err href hp hv hr hf
  have h2 : (forEachChild (parseEntryBinaryChild env) x.children
      (⟨(none, ""), "", [], false, false⟩, st)).2.m_error = true := by
    rw [hx, forEachChild_append]
    simp only [forEachChild, hxe, Bool.false_eq_true, if_false]
    apply forEachChild_stable (P := fun t => t.m_error = true)
      (fun c s h => parseEntryBinaryChild_stable stable_m_error.toStableLeaf h)
    unfold parseEntryBinaryChild
    rw [if_neg (by rw [hc]; decide), if_pos hc]
    exact h1.1
  unfold parseEntryBinary
  simp only
  split
  · split
    · exact hasError_raiseError _ _
    · simp [Reader.hasError, h2]
  · exact hasError_raiseError _ _

/-- C25: when the keystream cipher reports a failure on the ciphertext of a
`Value` element of a `String` element, marked `Protected="True"` and with text,
the `Value` branch of `parseEntryString` ends with the error flag set and the
error text of the cipher as message, so that `hasError()` is true and
`errorString()` is that text, and with an empty value; the same holds for an
inline `Value` element of a `Binary` element with decoded bytes. The `String` or
`Binary` element that holds such a `Value` element ends with `hasError()` true,
and the error flag, once set, is kept by every later step of the decode. The
documents with the protected text `AA==`, on which the cipher of `Env.sample`
fails, end with the error "keystream failure" in both modes. -/
theorem C25_cipher_failure (env : Env) :
    (∀ (c : XmlElement) (s : StringLocals × Reader) (cs cs1 : QByteArray) (err : String),
      c.attr "Protected" = "True" → (readString c s.2).1.isEmpty = false →
      s.2.m_randomStream = some cs →
      env.process cs (env.fromBase64 (readString c s.2).1) = (.inl err, cs1) →
      (parseEntryStringValue env c s).2.hasError = true ∧
        (parseEntryStringValue env c s).2.errorString = err ∧
        (parseEntryStringValue env c s).1.value = "") ∧
    (∀ (c : XmlElement) (s : BinaryLocals × Reader) (cs cs1 : QByteArray) (err : String),
      c.hasAttribute "Ref" = false → c.attr "Protected" = "True" →
      (readBinary env c s.2).1.isEmpty = false → s.2.m_randomStream = some cs →
      env.process cs (readBinary env c s.2).1 = (.inl err, cs1) →
      (parseEntryBinaryValue env c s).2.hasError = true ∧
        (parseEntryBinaryValue env c s).2.errorString = err) ∧
    (∀ (entry : Nat) (x : XmlElement) (st : Reader) (pre post : List XmlElement)
      (c : XmlElement) (cs cs1 : QByteArray) (err : String),
      x.children = pre ++ c :: post → c.name = "Value" →
      (forEachChild (parseEntryStringChild env) pre
        (⟨"", "", false, false, false⟩, st)).2.xmlError = false →
      c.attr "Protected" = "True" →
      (readString c (forEachChild (parseEntryStringChild env) pre
        (⟨"", "", false, false, false⟩, st)).2).1.isEmpty = false →
      (forEachChild (parseEntryStringChild env) pre
        (⟨"", "", false, false, false⟩, st)).2.m_randomStream = some cs →
      env.process cs (env.fromBase64 (readString c (forEachChild (parseEntryStringChild env)
        pre (⟨"", "", false, false, false⟩, st)).2).1) = (.inl err, cs1) →
      (parseEntryString env entry x st).hasError = true) ∧
    (∀ (entry : Nat) (x : XmlElement) (st : Reader) (pre post : List XmlElement)
      (c : XmlElement) (cs cs1 : QByteArray) (err : String),
      x.children = pre ++ c :: post → c.name = "Value" →
      (forEachChild (parseEntryBinaryChild env) pre
        (⟨(none, ""), "", [], false, false⟩, st)).2.xmlError = false →
      c.hasAttribute "Ref" = false → c.attr "Protected" = "True" →
      (readBinary env c (forEachChild (parseEntryBinaryChild env) pre
        (⟨(none, ""), "", [], false, false⟩, st)).2).1.isEmpty = false →
      (forEachChild (parseEntryBinaryChild env) pre
        (⟨(none, ""), "", [], false, false⟩, st)).2.m_randomStream = some cs →
      env.process cs (readBinary env c (forEachChild (parseEntryBinaryChild env)
        pre (⟨(none, ""), "", [], false, false⟩, st)).2).1 = (.inl err, cs1) →
      (parseEntryBinary env entry x st).2.hasError = true) ∧
    Stable (fun t => t.m_error = true) ∧
    (readDatabase Env.sample true [] (some [])
        (Sample.docEntryWith [Sample.protectedString "Password" "AA=="])).map
        Reader.observeError = some (true, "keystream failure") ∧
    (readDatabase Env.sample false [] (some [])
        (Sample.docEntryWith [Sample.protectedString "Password" "AA=="])).map
        Reader.observeError = some (true, "keystream failure") ∧
    (readDatabase Env.sample true [] (some [])
        (Sample.docEntryWith [Sample.protectedBinary "file" "AA=="])).map
        Reader.observeError = some (true, "keystream failure") ∧
    (readDatabase Env.sample false [] (some [])
        (Sample.docEntryWith [Sample.protectedBinary "file" "AA=="])).map
        Reader.observeError = some (true, "keystream failure") := by
  refine ⟨?_, ?_, ?_, ?_, stable_m_error, rfl, rfl, rfl, rfl⟩
  · intro c s cs cs1 err hp hv hr hf
    obtain ⟨h1, h2, h3, _⟩ := parseEntryStringValue_fail env c s cs cs1 err hp hv hr hf
    exact ⟨by simp [Reader.hasError, h1], by simp [Reader.errorString, h1, h2], h3⟩
  · intro c s cs cs1 err href hp hv hr hf
    obtain ⟨h1, h2, _⟩ := parseEntryBinaryValue_fail env c s cs cs1 err href hp hv hr hf
    exact ⟨by simp [Reader.hasError, h1], by simp [Reader.errorString, h1, h2]⟩
  · intro entry x st pre post c cs cs1 err hx hc hxe hp hv hr hf
    exact parseEntryString_fail env entry x st pre post c cs cs1 err hx hc hxe hp hv hr hf
  · intro entry x st pre post c cs cs1 err hx hc hxe href hp hv hr hf
    exact parseEntryBinary_fail env entry x st pre post c cs cs1 err hx hc hxe href hp hv hr hf

/-- Witness of C25: the `Value` element with the protected text `AA==` at the
start of a decode with a cipher: the cipher of `Env.sample` fails on the byte 0
with "keystream failure". -/
theorem C25_cipher_failure_witness :
    (XmlElement.mk "Value" [("Protected", "True")] "AA==" []).attr "Protected" = "True" ∧
    (readString (.mk "Value" [("Protected", "True")] "AA==" [])
      (Reader.start true [] (some []) Sample.docStray)).1.isEmpty = false ∧
    Env.sample.process [] (Env.sample.fromBase64 (readString
      (.mk "Value" [("Protected", "True")] "AA==" [])
      (Reader.start true [] (some []) Sample.docStray)).1) = (.inl "keystream failure", []) ∧
    ((parseEntryStringValue Env.sample (.mk "Value" [("Protected", "True")] "AA==" [])
        (⟨"", "", false, false, false⟩, Reader.start true [] (some []) Sample.docStray)).2.hasError
        = true ∧
      (parseEntryStringValue Env.sample (.mk "Value" [("Protected", "True")] "AA==" [])
        (⟨"", "", false, false, false⟩,
          Reader.start true [] (some []) Sample.docStray)).2.errorString = "keystream failure" ∧
      (parseEntryStringValue Env.sample (.mk "Value" [("Protected", "True")] "AA==" [])
        (⟨"", "", false, false, false⟩,
          Reader.start true [] (some []) Sample.docStray)).1.value = "") :=
  ⟨by decide, by decide, by decide,
    (C25_cipher_failure Env.sample).1 (.mk "Value" [("Protected", "True")] "AA==" [])
      (⟨"", "", false, false, false⟩, Reader.start true [] (some []) Sample.docStray)
      [] [] "keystream failure" (by decide) (by decide) rfl (by decide)⟩

/-! ### C21: the tick count of eight bytes -/

theorem base64Value_base64Char : ∀ v, v < 64 → base64Value (Spec.base64Char v) = some v := by
  decide

theorem isBase64Char_base64Char : ∀ v, v < 64 → isBase64Char (Spec.base64Char v) = true := by
  decide

/-- Three bytes leave the decoder as they entered the encoder, and the decoder
is back at the start of a group. -/
theorem fromBase64Loop_group (a b c : Nat) (ha : a < 256) (hb : b < 256) (hc : c < 256)
    (rest : List Char) :
    fromBase64Loop (Spec.base64Char (a / 4) :: Spec.base64Char (a % 4 * 16 + b / 16) ::
      Spec.base64Char (b % 16 * 4 + c / 64) :: Spec.base64Char (c % 64) :: rest) 0 0 =
      a :: b :: c :: fromBase64Loop rest 0 0 := by
  have h1 := base64Value_base64Char (a / 4) (by omega)
  have h2 := base64Value_base64Char (a % 4 * 16 + b / 16) (by omega)
  have h3 := base64Value_base64Char (b % 16 * 4 + c / 64) (by omega)
  have h4 := base64Value_base64Char (c % 64) (by omega)
  simp only [fromBase64Loop, h1, h2, h3, h4]
  norm_num
  refine ⟨by omega, by omega, by omega, ?_⟩
  rw [Nat.mod_one]

/-- The last two bytes leave the decoder as they entered the encoder. -/
theorem fromBase64Loop_tail (a b : Nat) (ha : a < 256) (hb : b < 256) :
    fromBase64Loop [Spec.base64Char (a / 4), Spec.base64Char (a % 4 * 16 + b / 16),
      Spec.base64Char (b % 16 * 4), '='] 0 0 = [a, b] := by
  have h1 := base64Value_base64Char (a / 4) (by omega)
  have h2 := base64Value_base64Char (a % 4 * 16 + b / 16) (by omega)
  have h3 := base64Value_base64Char (b % 16 * 4) (by omega)
  have h4 : base64Value '=' = none := by decide
  simp only [fromBase64Loop, h1, h2, h3, h4]
  norm_num
  refine ⟨?_, ?_⟩ <;> omega

theorem littleEndian_lt (b : QByteArray) (hb : ∀ v ∈ b, v < 256) :
    Spec.littleEndian b < 256 ^ b.length := by
  induction b with
  | nil => simp [Spec.littleEndian]
  | cons a rest ih =>
    have h1 := hb a (by simp)
    have h2 := ih (fun v hv => hb v (by simp [hv]))
    simp only [Spec.littleEndian, List.length_cons, pow_succ]
    omega

theorem bytesToUInt64_eq (b : QByteArray) (hb : ∀ v ∈ b, v < 256) (hl : b.length ≤ 8) :
    bytesToUInt64 b = Spec.littleEndian b := by
  induction b with
  | nil => rfl
  | cons a rest ih =>
    have h1 := hb a (by simp)
    have hr : ∀ v ∈ rest, v < 256 := fun v hv => hb v (by simp [hv])
    have hl2 : rest.length ≤ 7 := by simpa using hl
    have h2 := littleEndian_lt rest hr
    have h3 : 256 ^ rest.length ≤ 256 ^ 7 := Nat.pow_le_pow_right (by decide) hl2
    simp only [bytesToUInt64, Spec.littleEndian, ih hr (by omega)]
    have h4 : a % 256 = a := Nat.mod_eq_of_lt h1
    rw [h4]
    apply Nat.mod_eq_of_lt
    norm_num at h3 ⊢
    omega

theorem toInt64_eq (u : Nat) (hu : u < 2 ^ 64) : toInt64 u = Spec.signed64 u := by
  unfold toInt64 Spec.signed64
  rw [Nat.mod_eq_of_lt hu]

theorem list_length_eight {α : Type} (b : List α) (h : b.length = 8) :
    ∃ a0 a1 a2 a3 a4 a5 a6 a7, b = [a0, a1, a2, a3, a4, a5, a6, a7] := by
  rcases b with _ | ⟨a0, _ | ⟨a1, _ | ⟨a2, _ | ⟨a3, _ | ⟨a4, _ | ⟨a5, _ | ⟨a6, _ | ⟨a7, _ | ⟨a8, r⟩⟩⟩⟩⟩⟩⟩⟩⟩ <;>
    simp at h
  exact ⟨a0, a1, a2, a3, a4, a5, a6, a7, rfl⟩

/-- The decoder of Qt gives back the eight bytes of a base64 text. -/
theorem qtFromBase64_toBase64 (b : QByteArray) (hl : b.length = 8) (hb : ∀ v ∈ b, v < 256) :
    qtFromBase64 (Spec.toBase64 b) = b := by
  obtain ⟨a0, a1, a2, a3, a4, a5, a6, a7, rfl⟩ := list_length_eight b hl
  have h0 := hb a0 (by simp)
  have h1 := hb a1 (by simp)
  have h2 := hb a2 (by simp)
  have h3 := hb a3 (by simp)
  have h4 := hb a4 (by simp)
  have h5 := hb a5 (by simp)
  have h6 := hb a6 (by simp)
  have h7 := hb a7 (by simp)
  unfold qtFromBase64 Spec.toBase64
  simp only [Spec.toBase64Chars]
  rw [fromBase64Loop_group a0 a1 a2 h0 h1 h2, fromBase64Loop_group a3 a4 a5 h3 h4 h5,
    fromBase64Loop_tail a6 a7 h6 h7]

/-- The base64 text of eight bytes matches the pattern of `b64regex`. -/
theorem matchBase64Regex_toBase64 (b : QByteArray) (hl : b.length = 8)
    (hb : ∀ v ∈ b, v < 256) : matchBase64Regex (Spec.toBase64 b) = true := by
  obtain ⟨a0, a1, a2, a3, a4, a5, a6, a7, rfl⟩ := list_length_eight b hl
  have h0 := hb a0 (by simp)
  have h1 := hb a1 (by simp)
  have h2 := hb a2 (by simp)
  have h3 := hb a3 (by simp)
  have h4 := hb a4 (by simp)
  have h5 := hb a5 (by simp)
  have h6 := hb a6 (by simp)
  have h7 := hb a7 (by simp)
  unfold matchBase64Regex Spec.toBase64
  simp only [Spec.toBase64Chars, matchBase64Groups,
    isBase64Char_base64Char (a0 / 4) (by omega),
    isBase64Char_base64Char (a0 % 4 * 16 + a1 / 16) (by omega),
    isBase64Char_base64Char (a1 % 16 * 4 + a2 / 64) (by omega),
    isBase64Char_base64Char (a2 % 64) (by omega),
    isBase64Char_base64Char (a3 / 4) (by omega),
    isBase64Char_base64Char (a3 % 4 * 16 + a4 / 16) (by omega),
    isBase64Char_base64Char (a4 % 16 * 4 + a5 / 64) (by omega),
    isBase64Char_base64Char (a5 % 64) (by omega),
    isBase64Char_base64Char (a6 / 4) (by omega),
    isBase64Char_base64Char (a6 % 4 * 16 + a7 / 16) (by omega),
    isBase64Char_base64Char (a7 % 16 * 4) (by omega)]
  simp

theorem leftJustified8_of_length (b : QByteArray) (hl : b.length = 8) : leftJustified8 b = b := by
  unfold leftJustified8
  rw [List.take_append_of_le_length (by omega), List.take_of_length_le (by omega)]

/-- C21: for every byte string `b` of eight bytes, the base64 text of `b`
matches the pattern of `b64regex` and the base64 decoder of Qt gives `b` back
from it; and for every element without child elements whose text is the base64
text of `b`, read without XML error with a decoder that gives `b` back,
`readDateTime` leaves the state as it is, so raises no error, and returns the
instant 0001-01-01T00:00:00 UTC plus `s` seconds, where `s` is `b` read in
little-endian order as a signed 64-bit integer. -/
theorem C21_tick_count_of_eight_bytes (b : QByteArray) (hl : b.length = 8)
    (hb : ∀ v ∈ b, v < 256) :
    matchBase64Regex (Spec.toBase64 b) = true ∧
    qtFromBase64 (Spec.toBase64 b) = b ∧
    (∀ (env : Env) (x : XmlElement) (st : Reader), x.text = Spec.toBase64 b → x.children = [] →
      st.xmlError = false → env.fromBase64 (Spec.toBase64 b) = b →
      readDateTime env x st =
        (.year1PlusSecs (Spec.signed64 (Spec.littleEndian b)), st)) ∧
    toInt64 (bytesToUInt64 (leftJustified8 b)) = Spec.signed64 (Spec.littleEndian b) := by
  have hm := matchBase64Regex_toBase64 b hl hb
  have hv : toInt64 (bytesToUInt64 (leftJustified8 b)) = Spec.signed64 (Spec.littleEndian b) := by
    rw [leftJustified8_of_length b hl, bytesToUInt64_eq b hb (by omega)]
    apply toInt64_eq
    have := littleEndian_lt b hb
    rw [hl] at this
    norm_num at this ⊢
    exact this
  refine ⟨hm, qtFromBase64_toBase64 b hl hb, ?_, hv⟩
  intro env x st ht hc hx he
  unfold readDateTime
  rw [readString_plain hx hc]
  simp only [ht, hm, if_true, he, hv]

/-- Witness of C21: the eight bytes 0x80, 0, …, 0 have the base64 text
`gAAAAAAAAAA=` and give 128 seconds; the eight bytes 0xFF give −1 second. -/
theorem C21_tick_count_of_eight_bytes_witness :
    Spec.toBase64 [128, 0, 0, 0, 0, 0, 0, 0] = "gAAAAAAAAAA=" ∧
    readDateTime Env.sample (.plain "CreationTime" "gAAAAAAAAAA=" [])
        (Reader.start true [] none Sample.docStray) =
      (.year1PlusSecs 128, Reader.start true [] none Sample.docStray) ∧
    Spec.toBase64 [255, 255, 255, 255, 255, 255, 255, 255] = "//////////8=" ∧
    readDateTime Env.sample (.plain "CreationTime" "//////////8=" [])
        (Reader.start true [] none Sample.docStray) =
      (.year1PlusSecs (-1), Reader.start true [] none Sample.docStray) :=
  ⟨by decide,
    (C21_tick_count_of_eight_bytes [128, 0, 0, 0, 0, 0, 0, 0] rfl (by decide)).2.2.1
      Env.sample (.plain "CreationTime" "gAAAAAAAAAA=" [])
      (Reader.start true [] none Sample.docStray) (by decide) rfl rfl (by decide),
    by decide,
    (C21_tick_count_of_eight_bytes [255, 255, 255, 255, 255, 255, 255, 255] rfl
      (by decide)).2.2.1
      Env.sample (.plain "CreationTime" "//////////8=" [])
      (Reader.start true [] none Sample.docStray) (by decide) rfl rfl (by decide)⟩

/-! ### C22: `readColor` and texts whose parts carry a sign -/

theorem hexDigit_le {c : Char} {v : Nat} (h : Spec.hexDigit c = some v) : v ≤ 15 := by
  unfold Spec.hexDigit at h
  have e0 : ('0' : Char).toNat = 48 := rfl
  have e9 : ('9' : Char).toNat = 57 := rfl
  have ea : ('a' : Char).toNat = 97 := rfl
  have ef : ('f' : Char).toNat = 102 := rfl
  have eA : ('A' : Char).toNat = 65 := rfl
  have eF : ('F' : Char).toNat = 70 := rfl
  split at h
  · rename_i hc
    have h1 : ('0' : Char).toNat ≤ c.toNat := hc.1
    have h2 : c.toNat ≤ ('9' : Char).toNat := hc.2
    simp only [Option.some.injEq] at h
    omega
  · split at h
    · rename_i hc
      have h1 : ('a' : Char).toNat ≤ c.toNat := hc.1
      have h2 : c.toNat ≤ ('f' : Char).toNat := hc.2
      simp only [Option.some.injEq] at h
      omega
    · split at h
      · rename_i hc
        have h1 : ('A' : Char).toNat ≤ c.toNat := hc.1
        have h2 : c.toNat ≤ ('F' : Char).toNat := hc.2
        simp only [Option.some.injEq] at h
        omega
      · cases h

theorem hexPair_le {s : String} {v : Int} (h : Spec.hexPair s = some v) : v ≤ 255 := by
  unfold Spec.hexPair at h
  split at h
  · split at h
    · rename_i ha hb
      have h1 := hexDigit_le ha
      have h2 := hexDigit_le hb
      simp only [Option.some.injEq] at h
      subst h
      simp only [Int.ofNat_eq_coe]
      omega
    · cases h
  · cases h

/-- The digits of `digitsValue` in base 16 are the hexadecimal digits. -/
theorem digitsValue_hex (c : Char) (rest : List Char) (acc : Nat) :
    digitsValue 16 (c :: rest) acc =
      match Spec.hexDigit c with
      | some v => digitsValue 16 rest (acc * 16 + v)
      | none => none := by
  have e0 : ('0' : Char).toNat = 48 := rfl
  have e9 : ('9' : Char).toNat = 57 := rfl
  have ea : ('a' : Char).toNat = 97 := rfl
  have ef : ('f' : Char).toNat = 102 := rfl
  have eA : ('A' : Char).toNat = 65 := rfl
  have eF : ('F' : Char).toNat = 70 := rfl
  unfold Spec.hexDigit
  simp only [digitsValue]
  split
  · rename_i hc
    have h1 : ('0' : Char).toNat ≤ c.toNat := hc.1
    have h2 : c.toNat ≤ ('9' : Char).toNat := hc.2
    rw [if_pos (by omega)]
  · split
    · rename_i hc
      have h1 : ('a' : Char).toNat ≤ c.toNat := hc.1
      have h2 : c.toNat ≤ ('f' : Char).toNat := hc.2
      rw [if_pos (by omega)]
    · split
      · rename_i hc
        have h1 : ('A' : Char).toNat ≤ c.toNat := hc.1
        have h2 : c.toNat ≤ ('F' : Char).toNat := hc.2
        rw [if_pos (by omega)]
      · rw [if_neg (by omega)]

/-- The plain reading of `Env.sample` reads two hexadecimal digits as their
value. -/
theorem plainToInt_hexPair (s : String) (v : Int) (h : Spec.hexPair s = some v) :
    plainToInt 16 s = some v := by
  unfold Spec.hexPair at h
  unfold plainToInt
  split at h
  · rename_i a b hs
    split at h
    · rename_i va vb ha hb
      rw [hs, if_neg (by simp), digitsValue_hex, ha]
      simp only
      rw [digitsValue_hex, hb]
      simp only [digitsValue, Option.map_some', zero_mul, zero_add]
      simp only [Option.some.injEq] at h ⊢
      rw [← h, Nat.mul_comm]
    · cases h
  · cases h

theorem isEmpty_false_of_length {s : String} (h : s.length = 7) : s.isEmpty = false := by
  cases hs : s.isEmpty with
  | false => rfl
  | true =>
    rw [(String.isEmpty_iff s).mp hs] at h
    cases h

theorem readColorPart_iff (env : Env) (t : String) (i : Nat) (v : Int) :
    readColorPart env t i = some v ↔ env.toIntHex (mid2 t (1 + 2 * i)) = some v ∧ v ≤ 255 := by
  unfold readColorPart
  cases h : env.toIntHex (mid2 t (1 + 2 * i)) with
  | none => simp
  | some r =>
    simp only [gt_iff_lt, Option.some.injEq]
    split
    · constructor
      · intro hc
        cases hc
      · rintro ⟨rfl, h2⟩
        omega
    · constructor
      · intro hc
        simp only [Option.some.injEq] at hc
        subst hc
        exact ⟨rfl, by omega⟩
      · rintro ⟨rfl, _⟩
        rfl
theorem hexPair_nonneg {s : String} {v : Int} (h : Spec.hexPair s = some v) : 0 ≤ v := by
  unfold Spec.hexPair at h
  split at h
  · split at h
    · simp only [Option.some.injEq] at h
      subst h
      simp only [Int.ofNat_eq_coe]
      omega
    · cases h
  · cases h

/-- The range check of `QColor` keeps a value of 0..255. -/
theorem colorRangeCheck_of_range {v : Int} (h0 : 0 ≤ v) (h1 : v ≤ 255) :
    colorRangeCheck v = v := by
  unfold colorRangeCheck
  omega

/-- The range check of `QColor` gives a value of 0..255. -/
theorem colorRangeCheck_range (v : Int) : 0 ≤ colorRangeCheck v ∧ colorRangeCheck v ≤ 255 := by
  unfold colorRangeCheck
  omega

/-- The range check of `QColor` replaces a negative value by 0. -/
theorem colorRangeCheck_of_neg {v : Int} (h : v < 0) : colorRangeCheck v = 0 := by
  unfold colorRangeCheck
  omega

/-- The result of `readColor` by the text `t` that `readString` gives for the
element. It returns the unset colour and raises nothing when `t` is empty. It
returns a colour and raises nothing when `t` has seven characters, starts with
`#` and each of its three parts of two characters is accepted by
`QString::toInt` in base 16 with a value of 255 at most; the colour has these
values after the range check of `QColor`, which are the values themselves when
`t` is `#` followed by six hexadecimal digits and the conversion reads two
hexadecimal digits as their value. For every other text it returns the unset
colour, in Strict mode with the error "Invalid color value" or "Invalid color
rgb part" and in Lenient mode without error. -/
theorem readColor_by_parts (env : Env) (x : XmlElement) (st : Reader) :
    ((readString x st).1.isEmpty = true →
      readColor env x st = (.unset, (readString x st).2)) ∧
    (∀ r g b : Int, (readString x st).1.length = 7 →
      (readString x st).1.data.head? = some '#' →
      readColorPart env (readString x st).1 0 = some r →
      readColorPart env (readString x st).1 1 = some g →
      readColorPart env (readString x st).1 2 = some b →
      readColor env x st =
        (.rgb (colorRangeCheck r) (colorRangeCheck g) (colorRangeCheck b),
          (readString x st).2)) ∧
    (Spec.isHexColor (readString x st).1 = true →
      (∀ s v, Spec.hexPair s = some v → env.toIntHex s = some v) →
      readColor env x st =
        (.rgb ((Spec.hexPair (mid2 (readString x st).1 1)).getD 0)
          ((Spec.hexPair (mid2 (readString x st).1 3)).getD 0)
          ((Spec.hexPair (mid2 (readString x st).1 5)).getD 0), (readString x st).2)) ∧
    ((readString x st).1.isEmpty = false →
      (readString x st).1.length ≠ 7 ∨ (readString x st).1.data.head? ≠ some '#' →
      (st.m_strictMode = true →
        readColor env x st = (.unset, (readString x st).2.raiseError "Invalid color value")) ∧
      (st.m_strictMode = false → readColor env x st = (.unset, (readString x st).2))) ∧
    ((readString x st).1.length = 7 → (readString x st).1.data.head? = some '#' →
      readColorPart env (readString x st).1 0 = none ∨
        readColorPart env (readString x st).1 1 = none ∨
        readColorPart env (readString x st).1 2 = none →
      (st.m_strictMode = true →
        readColor env x st =
          (.unset, (readString x st).2.raiseError "Invalid color rgb part")) ∧
      (st.m_strictMode = false → readColor env x st = (.unset, (readString x st).2))) ∧
    (∀ (i : Nat) (v : Int), readColorPart env (readString x st).1 i = some v ↔
      env.toIntHex (mid2 (readString x st).1 (1 + 2 * i)) = some v ∧ v ≤ 255) ∧
    ((readString x st).2.m_error = st.m_error ∧
      (readString x st).2.m_errorStr = st.m_errorStr) ∧
    (st.xmlError = false → x.children = [] → readString x st = (x.text, st)) := by
  have hs := readString_error_state x st
  have key : ∀ r g b : Int, (readString x st).1.length = 7 →
      (readString x st).1.data.head? = some '#' →
      readColorPart env (readString x st).1 0 = some r →
      readColorPart env (readString x st).1 1 = some g →
      readColorPart env (readString x st).1 2 = some b →
      readColor env x st =
        (.rgb (colorRangeCheck r) (colorRangeCheck g) (colorRangeCheck b),
          (readString x st).2) := by
    intro r g b hl hh h0 h1 h2
    unfold readColor
    simp [isEmpty_false_of_length hl, hl, hh, h0, h1, h2]
  refine ⟨?_, key, ?_, ?_, ?_, fun i v => readColorPart_iff env _ i v, ⟨hs.1, hs.2.1⟩,
    fun hx hc => readString_plain hx hc⟩
  · intro he
    unfold readColor
    simp [he]
  · intro hc henv
    unfold Spec.isHexColor at hc
    simp only [Bool.and_eq_true, decide_eq_true_eq, Option.isSome_iff_exists] at hc
    obtain ⟨⟨⟨⟨hl, hh⟩, ⟨r, hr⟩⟩, ⟨g, hg⟩⟩, ⟨b, hb⟩⟩ := hc
    rw [hr, hg, hb]
    have h := key r g b hl hh
      ((readColorPart_iff env _ 0 r).mpr ⟨henv _ r hr, hexPair_le hr⟩)
      ((readColorPart_iff env _ 1 g).mpr ⟨henv _ g hg, hexPair_le hg⟩)
      ((readColorPart_iff env _ 2 b).mpr ⟨henv _ b hb, hexPair_le hb⟩)
    rw [colorRangeCheck_of_range (hexPair_nonneg hr) (hexPair_le hr),
      colorRangeCheck_of_range (hexPair_nonneg hg) (hexPair_le hg),
      colorRangeCheck_of_range (hexPair_nonneg hb) (hexPair_le hb)] at h
    exact h
  · intro he hc
    have hc2 : ((readString x st).1.length ≠ 7 ||
        (readString x st).1.data.head? ≠ some '#') = true := by
      rcases hc with hc | hc <;> simp [hc]
    constructor
    · intro hm
      unfold readColor
      simp only [he, Bool.false_eq_true, if_false, hc2, if_true, hs.2.2, hm]
    · intro hm
      unfold readColor
      simp only [he, Bool.false_eq_true, if_false, hc2, if_true, hs.2.2, hm]
  · intro hl hh hc
    have hc2 : ((readString x st).1.length ≠ 7 ||
        (readString x st).1.data.head? ≠ some '#') = false := by
      simp [hl, hh]
    constructor
    · intro hm
      unfold readColor
      simp only [isEmpty_false_of_length hl, Bool.false_eq_true, if_false, hc2, hs.2.2, hm]
      cases h0 : readColorPart env (readString x st).1 0 <;>
        cases h1 : readColorPart env (readString x st).1 1 <;>
        cases h2 : readColorPart env (readString x st).1 2 <;> simp_all
    · intro hm
      unfold readColor
      simp only [isEmpty_false_of_length hl, Bool.false_eq_true, if_false, hc2, hs.2.2, hm]
      cases h0 : readColorPart env (readString x st).1 0 <;>
        cases h1 : readColorPart env (readString x st).1 1 <;>
        cases h2 : readColorPart env (readString x st).1 2 <;> simp_all

/-- With the plain reading of numbers of `Env.sample`, `readColor` returns for a
text that is `#` followed by six hexadecimal digits the colour of its three
values, and raises nothing. -/
theorem readColor_sample_hex (x : XmlElement) (st : Reader)
    (h : Spec.isHexColor (readString x st).1 = true) :
    readColor Env.sample x st =
      (.rgb ((Spec.hexPair (mid2 (readString x st).1 1)).getD 0)
        ((Spec.hexPair (mid2 (readString x st).1 3)).getD 0)
        ((Spec.hexPair (mid2 (readString x st).1 5)).getD 0), (readString x st).2) :=
  (readColor_by_parts Env.sample x st).2.2.1 h (fun s v hv => plainToInt_hexPair s v hv)

/-- C22: the claim holds of the texts it names and the code departs from it on
texts whose parts carry a sign. The texts `#+1+2+3` and `#-1-2-3` are not
empty and are no `#` followed by six hexadecimal digits, so by the claim
`readColor` returns the unset colour for them and raises an error in Strict
mode. In the code each part of two characters is read by `QString::toInt` in
base 16, which accepts a sign, and is tested against the upper bound 255 only.
So in Strict mode `readColor` raises no error on `#+1+2+3` and returns the
colour (1, 2, 3), and raises no error on `#-1-2-3` and returns the colour
(0, 0, 0), the negative parts being replaced by the range check of `QColor`.
Beside them: `#010203` gives the colour (1, 2, 3), `#0102zz` the unset colour
with the error "Invalid color rgb part", `#12345` the unset colour with the
error "Invalid color value", and the empty text the unset colour without
error. -/
theorem C22_signed_parts_are_accepted :
    Spec.isHexColor "#+1+2+3" = false ∧ Spec.isHexColor "#-1-2-3" = false ∧
    Env.signed.toIntHex "+1" = some 1 ∧ Env.signed.toIntHex "-1" = some (-1) ∧
    (Reader.start true [] none Sample.docStray).m_strictMode = true ∧
    (Reader.start true [] none Sample.docStray).hasError = false ∧
    readColor Env.signed (.plain "ForegroundColor" "#+1+2+3" [])
        (Reader.start true [] none Sample.docStray) =
      (.rgb 1 2 3, Reader.start true [] none Sample.docStray) ∧
    readColor Env.signed (.plain "ForegroundColor" "#-1-2-3" [])
        (Reader.start true [] none Sample.docStray) =
      (.rgb 0 0 0, Reader.start true [] none Sample.docStray) ∧
    readColor Env.signed (.plain "ForegroundColor" "#010203" [])
        (Reader.start true [] none Sample.docStray) =
      (.rgb 1 2 3, Reader.start true [] none Sample.docStray) ∧
    readColor Env.signed (.plain "ForegroundColor" "#0102zz" [])
        (Reader.start true [] none Sample.docStray) =
      (.unset, (Reader.start true [] none Sample.docStray).raiseError
        "Invalid color rgb part") ∧
    readColor Env.signed (.plain "ForegroundColor" "#12345" [])
        (Reader.start true [] none Sample.docStray) =
      (.unset, (Reader.start true [] none Sample.docStray).raiseError "Invalid color value") ∧
    readColor Env.signed (.plain "ForegroundColor" "" [])
        (Reader.start true [] none Sample.docStray) =
      (.unset, Reader.start true [] none Sample.docStray) :=
  ⟨by decide, by decide, by decide, by decide, rfl, rfl, rfl, rfl, rfl, rfl, rfl, rfl⟩

/-! ### C23: icon numbers out of range -/

/-- In a `Group` element read without error, no child element read through its
end is one that makes its branch end in error. -/
theorem parseGroupWhile_fields (env : Env) (b : Bool) (fBad : XmlElement → Bool)
    (H : ∀ g c st, st.m_strictMode = b → st.xmlError = false → fBad c = true →
      (parseGroupField env g c st).hasError = true) (n : Nat) :
    ∀ l st r cs up, st.pending = cs :: up → st.m_strictMode = b →
      parseGroupWhile env n l st = some r → r.2.hasError = false →
      ∀ c ∈ cs, c.name ≠ "Group" → c.name ≠ "Entry" → fBad c = false := by
  induction n with
  | zero => simp [parseGroupWhile]
  | succ n ih =>
    intro l st r cs up hp hs hr he
    have st_aux := parseGroup_stable_aux stable_hasError env n
    have hst : st.hasError = false := noError_of_group.1 l st r hr he
    unfold parseGroupWhile at hr
    rcases readNext_cases hp (xmlError_false_of_hasError hst) with ⟨hcs, _⟩ | ⟨x, rest, hcs, h1⟩
    · intro c hc
      rw [hcs] at hc
      cases hc
    · rw [h1] at hr
      simp only at hr
      have hs1 : (st.setPending (x.children :: rest :: up)).m_strictMode = b := hs
      split at hr
      · rename_i hname
        split at hr
        · cases hr
        · rename_i g st2 hg
          have he2 := noError_of_group.1 _ st2 r hr he
          have hs2 : st2.m_strictMode = b :=
            (parseGroup_stable_aux (stable_strictMode b) env n).2 _ (g, st2) hs1 hg
          have hp2 := (group_sync env n).2 _ (g, st2) x.children (rest :: up) rfl hg he2
          have k := ih _ st2 r rest up hp2 hs2 hr he
          intro c hc n1 n2
          rw [hcs] at hc
          rcases List.mem_cons.mp hc with rfl | hc
          · exact absurd hname n1
          · exact k c hc n1 n2
      · split at hr
        · rename_i hname
          split at hr
          · cases hr
          · rename_i e st2 hg
            have he2 := noError_of_group.1 _ st2 r hr he
            have hs2 : st2.m_strictMode = b := strict_of_entry.2.1 false _ (e, st2) hs1 hg
            have hp2 := (entry_sync env n).2.1 false _ (e, st2) x.children (rest :: up) rfl
              hg he2
            have k := ih _ st2 r rest up hp2 hs2 hr he
            intro c hc h1 h2
            rw [hcs] at hc
            rcases List.mem_cons.mp hc with rfl | hc
            · exact absurd hname h2
            · exact k c hc h1 h2
        · have he2 := noError_of_group.1 _ _ r hr he
          rw [hasError_endElement] at he2
          have hs2 : (parseGroupField env l.group x
              (st.setPending (x.children :: rest :: up))).endElement.m_strictMode = b := by
            have : (parseGroupField env l.group x
                (st.setPending (x.children :: rest :: up))).m_strictMode = b :=
              parseGroupField_stable (stable_strictMode b).1 hs1
            simpa [Reader.endElement] using this
          have k := ih _ _ r rest up (endElement_pending (c := x.children)
            ((parseGroupField_pending env l.group x _).trans rfl)) hs2 hr he
          intro c hc h1 h2
          rw [hcs] at hc
          rcases List.mem_cons.mp hc with rfl | hc
          · by_contra hbad
            have := H l.group c (st.setPending (c.children :: rest :: up)) hs1
              (xmlError_false_of_hasError hst) (by simpa using hbad)
            rw [he2] at this
            cases this
          · exact k c hc h1 h2

/-- In an `Entry` element read without error, no child element read through its
end is one that makes its branch end in error. -/
theorem parseEntryWhile_fields (env : Env) (b : Bool) (fBad : XmlElement → Bool)
    (H : ∀ e c s, s.2.m_strictMode = b → s.2.xmlError = false → fBad c = true →
      (parseEntryField env e c s).2.hasError = true) (n : Nat) :
    ∀ history l st r cs up, st.pending = cs :: up → st.m_strictMode = b →
      parseEntryWhile env n history l st = some r → r.2.hasError = false →
      ∀ c ∈ cs, c.name ≠ "History" → fBad c = false := by
  induction n with
  | zero => simp [parseEntryWhile]
  | succ n ih =>
    intro history l st r cs up hp hs hr he
    have st_aux := parseEntry_stable_aux stable_hasError env n
    have hst : st.hasError = false := noError_of_entry.1 history l st r hr he
    unfold parseEntryWhile at hr
    rcases readNext_cases hp (xmlError_false_of_hasError hst) with ⟨hcs, _⟩ | ⟨x, rest, hcs, h1⟩
    · intro c hc
      rw [hcs] at hc
      cases hc
    · rw [h1] at hr
      simp only at hr
      have hs1 : (st.setPending (x.children :: rest :: up)).m_strictMode = b := hs
      split at hr
      · rename_i hname
        split at hr
        · exfalso
          have := st_aux.1 _ _ _ r (hasError_raiseError _ _) hr
          rw [he] at this
          cases this
        · split at hr
          · cases hr
          · rename_i items st2 hh
            have he2 := noError_of_entry.1 _ _ st2 r hr he
            have hs2 : st2.m_strictMode = b := strict_of_entry.2.2.2 _ (items, st2) hs1 hh
            have hp2 := (entry_sync env n).2.2.2 _ (items, st2) x.children (rest :: up) rfl hh he2
            have k := ih _ { l with historyItems := items } st2 r rest up hp2 hs2 hr he
            intro c hc n1
            rw [hcs] at hc
            rcases List.mem_cons.mp hc with rfl | hc
            · exact absurd hname n1
            · exact k c hc n1
      · have he2 := noError_of_entry.1 _ _ _ r hr he
        rw [hasError_endElement] at he2
        have hs2 : (parseEntryField env l.entry x (l.binaryRefs,
            st.setPending (x.children :: rest :: up))).2.endElement.m_strictMode = b := by
          have : (parseEntryField env l.entry x (l.binaryRefs,
              st.setPending (x.children :: rest :: up))).2.m_strictMode = b :=
            parseEntryField_stable (stable_strictMode b).1 hs1
          simpa [Reader.endElement] using this
        have k := ih history
          { l with binaryRefs := (parseEntryField env l.entry x (l.binaryRefs,
            st.setPending (x.children :: rest :: up))).1 } _ r rest up
          (endElement_pending (c := x.children)
            ((parseEntryField_pending env l.entry x _).trans rfl)) hs2 hr he
        intro c hc h1
        rw [hcs] at hc
        rcases List.mem_cons.mp hc with rfl | hc
        · by_contra hbad
          have := H l.entry c (l.binaryRefs, st.setPending (c.children :: rest :: up)) hs1
            (xmlError_false_of_hasError hst) (by simpa using hbad)
          rw [he2] at this
          cases this
        · exact k c hc h1

/-- The `IconID` branch of `parseGroupField`. -/
theorem parseGroupField_icon (env : Env) (g : Nat) (c : XmlElement) (st : Reader)
    (hc : c.name = "IconID") :
    parseGroupField env g c st =
      if (readNumber env c st).1 < 0 then
        (if (readNumber env c st).2.m_strictMode then
          (readNumber env c st).2.raiseError "Invalid group icon number"
          else (readNumber env c st).2).updGroup g (fun x => x.setIconNumber 0)
      else if (readNumber env c st).1 ≥ env.IconCount then
        (readNumber env c st).2.updGroup g (fun x => x.setIconNumber (env.IconCount - 1))
      else (readNumber env c st).2.updGroup g (fun x => x.setIconNumber (readNumber env c st).1) := by
  unfold parseGroupField
  rw [if_neg (by rw [hc]; decide), if_neg (by rw [hc]; decide), if_neg (by rw [hc]; decide),
    if_pos hc]

/-- The `IconID` branch of `parseEntryField`. -/
theorem parseEntryField_icon (env : Env) (e : Nat) (c : XmlElement)
    (s : List (String × String) × Reader) (hc : c.name = "IconID") :
    parseEntryField env e c s =
      if (readNumber env c s.2).1 < 0 then
        (s.1, (if (readNumber env c s.2).2.m_strictMode then
          (readNumber env c s.2).2.raiseError "Invalid entry icon number"
          else (readNumber env c s.2).2).updEntry e (fun x => x.setIconNumber 0))
      else (s.1, (readNumber env c s.2).2.updEntry e
        (fun x => x.setIconNumber (readNumber env c s.2).1)) := by
  unfold parseEntryField
  rw [if_neg (by rw [hc]; decide), if_pos hc]

theorem readNumber_value (env : Env) (c : XmlElement) (st : Reader) (hx : st.xmlError = false) :
    (readNumber env c st).1 = numberOfText env c := by
  have h1 : (readString c st).1 = c.text := by
    unfold readString
    simp only [hx, Bool.false_eq_true, if_false]
    split <;> rfl
  unfold readNumber numberOfText
  simp only [h1]
  cases env.toInt c.text <;> rfl

theorem readNumber_fields (env : Env) (c : XmlElement) (st : Reader) :
    (readNumber env c st).2.m_strictMode = st.m_strictMode ∧
      (readNumber env c st).2.groups = st.groups ∧
      (readNumber env c st).2.entries = st.entries := by
  have h := readString_fields c st
  unfold readNumber
  simp only
  split
  · exact ⟨h.2.2.1, h.2.2.2.2.1, h.2.2.2.2.2⟩
  · exact ⟨h.2.2.1, h.2.2.2.2.1, h.2.2.2.2.2⟩

theorem group_raiseError (st : Reader) (m : String) (p : Nat) :
    (st.raiseError m).group p = st.group p := rfl

theorem entry_raiseError (st : Reader) (m : String) (p : Nat) :
    (st.raiseError m).entry p = st.entry p := rfl

/-- What the `IconID` branch of `parseGroup` does. -/
theorem parseGroupField_icon_effect (env : Env) (g : Nat) (c : XmlElement) (st : Reader)
    (hc : c.name = "IconID") :
    ((readNumber env c st).1 < 0 → st.m_strictMode = true →
      (parseGroupField env g c st).m_error = true ∧
        (parseGroupField env g c st).m_errorStr = "Invalid group icon number") ∧
    ((readNumber env c st).1 < 0 → st.m_strictMode = false →
      (parseGroupField env g c st).errorState = (readNumber env c st).2.errorState) ∧
    (0 ≤ (readNumber env c st).1 →
      (parseGroupField env g c st).errorState = (readNumber env c st).2.errorState) ∧
    (g < st.groups.length →
      ((parseGroupField env g c st).group g).m_iconNumber =
        if (readNumber env c st).1 < 0 then 0
        else if (readNumber env c st).1 ≥ env.IconCount then env.IconCount - 1
        else (readNumber env c st).1) := by
  have hf := readNumber_fields env c st
  rw [parseGroupField_icon env g c st hc]
  refine ⟨?_, ?_, ?_, ?_⟩
  · intro hn hs
    rw [if_pos hn, hf.1, hs]
    have h := errorState_updGroup ((readNumber env c st).2.raiseError "Invalid group icon number")
      g (fun x => x.setIconNumber 0)
    unfold Reader.errorState at h
    simp only [Prod.mk.injEq] at h
    exact ⟨h.1.trans rfl, h.2.1.trans rfl⟩
  · intro hn hs
    rw [if_pos hn, hf.1, hs]
    exact errorState_updGroup _ _ _
  · intro hn
    rw [if_neg (by omega)]
    split <;> exact errorState_updGroup _ _ _
  · intro hg
    have hg1 : g < (readNumber env c st).2.groups.length := by rw [hf.2.1]; exact hg
    split
    · rw [group_updGroup, if_pos ⟨rfl, by split <;> exact hg1⟩]
      rfl
    · split
      · rw [group_updGroup, if_pos ⟨rfl, hg1⟩]
        rfl
      · rw [group_updGroup, if_pos ⟨rfl, hg1⟩]
        rfl

/-- What the `IconID` branch of `parseEntry` does. -/
theorem parseEntryField_icon_effect (env : Env) (e : Nat) (c : XmlElement)
    (s : List (String × String) × Reader) (hc : c.name = "IconID") :
    ((readNumber env c s.2).1 < 0 → s.2.m_strictMode = true →
      (parseEntryField env e c s).2.m_error = true ∧
        (parseEntryField env e c s).2.m_errorStr = "Invalid entry icon number") ∧
    ((readNumber env c s.2).1 < 0 → s.2.m_strictMode = false →
      (parseEntryField env e c s).2.errorState = (readNumber env c s.2).2.errorState) ∧
    (0 ≤ (readNumber env c s.2).1 →
      (parseEntryField env e c s).2.errorState = (readNumber env c s.2).2.errorState) ∧
    (e < s.2.entries.length →
      ((parseEntryField env e c s).2.entry e).m_iconNumber =
        if (readNumber env c s.2).1 < 0 then 0 else (readNumber env c s.2).1) := by
  have hf := readNumber_fields env c s.2
  rw [parseEntryField_icon env e c s hc]
  refine ⟨?_, ?_, ?_, ?_⟩
  · intro hn hs
    rw [if_pos hn, hf.1, hs]
    have h := errorState_updEntry
      ((readNumber env c s.2).2.raiseError "Invalid entry icon number") e
      (fun x => x.setIconNumber 0)
    unfold Reader.errorState at h
    simp only [Prod.mk.injEq] at h
    exact ⟨h.1.trans rfl, h.2.1.trans rfl⟩
  · intro hn hs
    rw [if_pos hn, hf.1, hs]
    exact errorState_updEntry _ _ _
  · intro hn
    rw [if_neg (by omega)]
    exact errorState_updEntry _ _ _
  · intro hg
    have hg1 : e < (readNumber env c s.2).2.entries.length := by rw [hf.2.2]; exact hg
    split
    · simp only
      rw [entry_updEntry, if_pos ⟨rfl, by split <;> exact hg1⟩]
      rfl
    · simp only
      rw [entry_updEntry, if_pos ⟨rfl, hg1⟩]
      rfl

/-- In Strict mode, a `Group` element read without error has no `IconID`
element with a negative number. -/
theorem parseGroup_negativeIcon (env : Env) (n : Nat) (st : Reader) (r : Nat × Reader)
    (cs : List XmlElement) (up : List (List XmlElement))
    (hr : parseGroup env n st = some r) (hp : st.pending = cs :: up)
    (hs : st.m_strictMode = true) (he : r.2.hasError = false) :
    negativeIcon env cs = false := by
  cases n with
  | zero =>
    rw [parseGroup] at hr
    cases hr
  | succ n =>
    unfold parseGroup at hr
    simp only at hr
    split at hr
    · cases hr
    · rename_i l st3 hw
      cases hr
      have he3 : st3.hasError = false :=
        hasError_false_of_stable (fun hh => parseGroupFinish_stable stable_hasError hh) he
      have k := parseGroupWhile_fields env true
        (fun c => c.name = "IconID" && decide (numberOfText env c < 0))
        (fun g c s hs hx hb => by
          simp only [Bool.and_eq_true, decide_eq_true_eq] at hb
          have h1 := (parseGroupField_icon_effect env g c s hb.1).1
            (by rw [readNumber_value env c s hx]; exact hb.2) hs
          simp [Reader.hasError, h1.1])
        n _ _ (l, st3) cs up (by simpa [Reader.newGroup] using hp)
        (by simpa [Reader.newGroup] using hs) hw he3
      unfold negativeIcon
      rw [List.any_eq_false]
      intro c hc
      by_cases hn : c.name = "IconID"
      · have := k c hc (by rw [hn]; decide) (by rw [hn]; decide)
        simpa using this
      · simp [hn]

/-- In Strict mode, an `Entry` element read without error, in a history or not,
has no `IconID` element with a negative number. -/
theorem parseEntry_negativeIcon (env : Env) (n : Nat) (history : Bool) (st : Reader)
    (r : Nat × Reader) (cs : List XmlElement) (up : List (List XmlElement))
    (hr : parseEntry env n history st = some r) (hp : st.pending = cs :: up)
    (hs : st.m_strictMode = true) (he : r.2.hasError = false) :
    negativeIcon env cs = false := by
  cases n with
  | zero =>
    rw [parseEntry] at hr
    cases hr
  | succ n =>
    rw [parseEntry_succ] at hr
    split at hr
    · cases hr
    · rename_i l st3 hw
      cases hr
      have he3 : st3.hasError = false :=
        hasError_false_of_stable (fun hh => parseEntryFinish_stable stable_hasError hh) he
      have k := parseEntryWhile_fields env true
        (fun c => c.name = "IconID" && decide (numberOfText env c < 0))
        (fun e c s hs hx hb => by
          simp only [Bool.and_eq_true, decide_eq_true_eq] at hb
          have h1 := (parseEntryField_icon_effect env e c s hb.1).1
            (by rw [readNumber_value env c s.2 hx]; exact hb.2) hs
          simp [Reader.hasError, h1.1])
        n history _ _ (l, st3) cs up (by simpa [Reader.newEntry] using hp)
        (by simpa [Reader.newEntry] using hs) hw he3
      unfold negativeIcon
      rw [List.any_eq_false]
      intro c hc
      by_cases hn : c.name = "IconID"
      · have := k c hc (by rw [hn]; decide)
        simpa using this
      · simp [hn]

/-- C23, the claim as stated fails: with 69 standard icons, the icon number 100
of a group is out of range, yet the decode raises no error in Strict mode: the
code of `parseGroup` gives a warning and stores the count less one, 68. -/
theorem C23_large_icon_number_is_accepted :
    Env.signed.IconCount = 69 ∧ Env.signed.toInt "100" = some 100 ∧
    (readDatabase Env.signed true [] none
      (.plain "KeePassFile" "" [.plain "Root" "" [.plain "Group" "" [
        .plain "UUID" Sample.uuidA [], .plain "IconID" "100" []]]])).map Reader.observeIcons =
      some (false, "", 68, []) ∧
    (parseGroupField Env.signed 1 (.plain "IconID" "100" [])
      (Reader.start true [] none Sample.docStray)).hasError = false ∧
    ((parseGroupField Env.signed 1 (.plain "IconID" "100" [])
      (Reader.start true [] none Sample.docStray)).group 1).m_iconNumber = 68 :=
  ⟨rfl, by decide, rfl, rfl, rfl⟩

/-- C23, amended: for the number `n` that `readNumber` gives for an `IconID`
element, which is the number of its text as long as the XML reader has no
error. A negative `n` raises "Invalid group icon number" or "Invalid entry icon
number" in Strict mode and nothing in Lenient mode, and 0 is stored; so a
Strict decode of a document that has a negative icon number where the reader
decodes a group or an entry ends with `hasError` true: with a keystream cipher
it returns so, without any dereference of a null `m_randomStream`, and
whatever the cipher, null or not, a decode that returns has `hasError` true. A
number that is not negative raises nothing in either mode. On a group it is
stored when it is below the count of standard icons and else that count less
one is stored, so the icon number of a group is within range as long as there
are standard icons. On an entry a number that is not negative and below the
count is stored as read. Beside the claim, the statement gives the value that
the code of `parseEntry` stores for every number: it tests the sign only and
does not bound the number by the count, as its sibling `parseGroup` does. -/
theorem C23_icon_number_by_sign (env : Env) :
    (∀ (g : Nat) (c : XmlElement) (st : Reader), c.name = "IconID" →
      ((readNumber env c st).1 < 0 → st.m_strictMode = true →
        (parseGroupField env g c st).m_error = true ∧
          (parseGroupField env g c st).m_errorStr = "Invalid group icon number") ∧
      ((readNumber env c st).1 < 0 → st.m_strictMode = false →
        (parseGroupField env g c st).errorState = (readNumber env c st).2.errorState) ∧
      (0 ≤ (readNumber env c st).1 →
        (parseGroupField env g c st).errorState = (readNumber env c st).2.errorState) ∧
      (g < st.groups.length →
        ((parseGroupField env g c st).group g).m_iconNumber =
          if (readNumber env c st).1 < 0 then 0
          else if (readNumber env c st).1 ≥ env.IconCount then env.IconCount - 1
          else (readNumber env c st).1) ∧
      (g < st.groups.length → 0 < env.IconCount →
        0 ≤ ((parseGroupField env g c st).group g).m_iconNumber ∧
          ((parseGroupField env g c st).group g).m_iconNumber < env.IconCount)) ∧
    (∀ (e : Nat) (c : XmlElement) (s : List (String × String) × Reader), c.name = "IconID" →
      ((readNumber env c s.2).1 < 0 → s.2.m_strictMode = true →
        (parseEntryField env e c s).2.m_error = true ∧
          (parseEntryField env e c s).2.m_errorStr = "Invalid entry icon number") ∧
      ((readNumber env c s.2).1 < 0 → s.2.m_strictMode = false →
        (parseEntryField env e c s).2.errorState = (readNumber env c s.2).2.errorState) ∧
      (0 ≤ (readNumber env c s.2).1 →
        (parseEntryField env e c s).2.errorState = (readNumber env c s.2).2.errorState) ∧
      (e < s.2.entries.length →
        ((parseEntryField env e c s).2.entry e).m_iconNumber =
          if (readNumber env c s.2).1 < 0 then 0 else (readNumber env c s.2).1) ∧
      (e < s.2.entries.length → 0 ≤ (readNumber env c s.2).1 →
        (readNumber env c s.2).1 < env.IconCount →
        0 ≤ ((parseEntryField env e c s).2.entry e).m_iconNumber ∧
          ((parseEntryField env e c s).2.entry e).m_iconNumber < env.IconCount)) ∧
    (∀ (binaryPool : List (String × QByteArray)) (rs : QByteArray)
      (doc : XmlElement), hasNegativeIcon env doc = true →
      ∃ r, readDatabase env true binaryPool (some rs) doc = some r ∧ r.nullDeref = false ∧
        r.hasError = true) ∧
    (∀ (binaryPool : List (String × QByteArray)) (randomStream : Option QByteArray)
      (doc : XmlElement) (r : Reader), hasNegativeIcon env doc = true →
      readDatabase env true binaryPool randomStream doc = some r → r.hasError = true) ∧
    (∀ (c : XmlElement) (st : Reader), st.xmlError = false →
      (readNumber env c st).1 = numberOfText env c) ∧
    (readDatabase Env.signed true [] none (Sample.docIcons "-1")).map Reader.observeIcons =
      some (true, "Invalid entry icon number", 0, [0]) ∧
    (readDatabase Env.signed false [] none (Sample.docIcons "-1")).map Reader.observeIcons =
      some (false, "", 0, [0]) ∧
    (readDatabase Env.signed true [] none (Sample.docIcons "5")).map Reader.observeIcons =
      some (false, "", 5, [5]) := by
  have key : ∀ (binaryPool : List (String × QByteArray)) (randomStream : Option QByteArray)
      (doc : XmlElement) (r : Reader), hasNegativeIcon env doc = true →
      readDatabase env true binaryPool randomStream doc = some r → r.hasError = true := by
    intro binaryPool randomStream doc r h hr
    by_contra he
    have := readDatabaseFuel_walk env true (negativeIcon env) (fun _ cs => negativeIcon env cs)
      (fun n st r cs up h1 h2 _ h4 h5 => parseGroup_negativeIcon env n st r cs up h1 h2 h4 h5)
      (fun n h st r cs up h1 h2 h3 h4 => parseEntry_negativeIcon env n h st r cs up h1 h2 h3 h4)
      _ binaryPool randomStream doc r hr (by simpa using he)
    have h2 : hasNegativeIcon env doc = false := this
    rw [h] at h2
    cases h2
  refine ⟨?_, ?_, ?_, key, fun c st hx => readNumber_value env c st hx, rfl, rfl, rfl⟩
  · intro g c st hc
    obtain ⟨h1, h2, h3, h4⟩ := parseGroupField_icon_effect env g c st hc
    refine ⟨h1, h2, h3, h4, ?_⟩
    intro hg hi
    rw [h4 hg]
    split
    · exact ⟨le_refl _, hi⟩
    · split
      · constructor <;> omega
      · constructor <;> omega
  · intro e c s hc
    obtain ⟨h1, h2, h3, h4⟩ := parseEntryField_icon_effect env e c s hc
    refine ⟨h1, h2, h3, h4, ?_⟩
    intro he h0 hi
    rw [h4 he, if_neg (by omega)]
    exact ⟨h0, hi⟩
  · intro binaryPool rs doc h
    obtain ⟨r, hr, hd⟩ := readDatabase_returns env true binaryPool rs doc
    exact ⟨r, hr, hd, key binaryPool _ doc r h hr⟩

/-- Witness of C23: the `IconID` element with the text `-1` on the temporary
parent at the start of a Strict decode, read with signed numbers, and the
document `Sample.docIcons` with that text. -/
theorem C23_icon_number_by_sign_witness :
    (XmlElement.plain "IconID" "-1" []).name = "IconID" ∧
    (readNumber Env.signed (.plain "IconID" "-1" [])
      (Reader.start true [] none Sample.docStray)).1 < 0 ∧
    ((parseGroupField Env.signed 1 (.plain "IconID" "-1" [])
        (Reader.start true [] none Sample.docStray)).m_error = true ∧
      (parseGroupField Env.signed 1 (.plain "IconID" "-1" [])
        (Reader.start true [] none Sample.docStray)).m_errorStr = "Invalid group icon number") ∧
    hasNegativeIcon Env.signed (Sample.docIcons "-1") = true ∧
    (∃ r, readDatabase Env.signed true [] (some []) (Sample.docIcons "-1") = some r ∧
      r.nullDeref = false ∧ r.hasError = true) :=
  ⟨rfl, by decide,
    ((C23_icon_number_by_sign Env.signed).1 1 (.plain "IconID" "-1" [])
      (Reader.start true [] none Sample.docStray) rfl).1 (by decide) rfl,
    by decide,
    (C23_icon_number_by_sign Env.signed).2.2.1 [] [] (Sample.docIcons "-1") (by decide)⟩

set_option synthInstance.maxSize 1024

/-! ### C29: two defining elements with the same UUID -/

theorem m_parent_updGroup (st : Reader) (p q : Nat) (f : DbGroup → DbGroup)
    (hf : ∀ g, (f g).m_parent = g.m_parent) :
    ((st.updGroup p f).group q).m_parent = (st.group q).m_parent := by
  rw [group_updGroup]
  split
  · rename_i h
    rw [hf, h.1]
  · rfl

theorem groups_length_cleanupParent (st : Reader) (c : Nat) :
    (st.cleanupParent c).groups.length = st.groups.length := by
  unfold Reader.cleanupParent
  split <;> simp

theorem m_parent_cleanupParent (st : Reader) (c q : Nat) :
    ((st.cleanupParent c).group q).m_parent = (st.group q).m_parent := by
  unfold Reader.cleanupParent
  split
  · exact m_parent_updGroup _ _ _ _ (by intro _; rfl)
  · rfl

theorem groups_length_setParent (st : Reader) (c p : Nat) :
    (st.setParent c p).groups.length = st.groups.length := by
  unfold Reader.setParent
  simp [groups_length_cleanupParent]

/-- The parent of a group after `setParent`. -/
theorem m_parent_setParent (st : Reader) (c p q : Nat) :
    ((st.setParent c p).group q).m_parent =
      if q = c ∧ c < st.groups.length then .group p else (st.group q).m_parent := by
  unfold Reader.setParent
  simp only
  rw [m_parent_updGroup _ _ _ _ (by intro _; rfl), group_updGroup, groups_length_cleanupParent]
  split
  · rfl
  · exact m_parent_cleanupParent st c q

/-- After the loop of `parseGroup` over the child groups read, each of them
hangs under the group of the element. -/
theorem m_parent_adopt (g : Nat) (cs : List Nat) (st : Reader)
    (hc : ∀ c ∈ cs, c < st.groups.length) :
    (cs.foldl (fun s c => s.setParent c g) st).groups.length = st.groups.length ∧
    (∀ c ∈ cs, ((cs.foldl (fun s c => s.setParent c g) st).group c).m_parent = .group g) ∧
    (∀ q, q ∉ cs → ((cs.foldl (fun s c => s.setParent c g) st).group q).m_parent =
      (st.group q).m_parent) := by
  induction cs generalizing st with
  | nil => exact ⟨rfl, fun c hc => absurd hc (List.not_mem_nil c), fun _ _ => rfl⟩
  | cons c rest ih =>
    simp only [List.foldl_cons]
    have hl := groups_length_setParent st c g
    obtain ⟨k1, k2, k3⟩ := ih (st.setParent c g)
      (fun x hx => by rw [hl]; exact hc x (List.mem_cons_of_mem _ hx))
    refine ⟨k1.trans hl, ?_, ?_⟩
    · intro x hx
      by_cases hr : x ∈ rest
      · exact k2 x hr
      · rcases List.mem_cons.mp hx with rfl | hx
        · rw [k3 x hr, m_parent_setParent, if_pos ⟨rfl, hc x (List.mem_cons_self _ _)⟩]
        · exact absurd hx hr
    · intro q hq
      have hq1 : q ≠ c := fun e => hq (e ▸ List.mem_cons_self _ _)
      have hq2 : q ∉ rest := fun e => hq (List.mem_cons_of_mem _ e)
      rw [k3 q hq2, m_parent_setParent, if_neg (fun h => hq1 h.1)]

theorem group_setGroup_parent (st : Reader) (e p q : Nat) :
    ((st.setGroup e p).group q).m_parent = (st.group q).m_parent := by
  unfold Reader.setGroup
  split
  · rfl
  · cases hg : (st.entry e).m_group with
    | none =>
      simp only
      rw [m_parent_updGroup _ _ _ _ (by intro _; rfl), group_updEntry]
    | some q0 =>
      simp only
      rw [m_parent_updGroup _ _ _ _ (by intro _; rfl), group_updEntry,
        m_parent_updGroup _ _ _ _ (by intro _; rfl)]

theorem entries_length_setGroup (st : Reader) (e p : Nat) :
    (st.setGroup e p).entries.length = st.entries.length := by
  unfold Reader.setGroup
  split
  · rfl
  · split <;> simp

/-- The owning group of an entry after `setGroup`. -/
theorem m_group_setGroup (st : Reader) (e p q : Nat) :
    ((st.setGroup e p).entry q).m_group =
      if q = e ∧ e < st.entries.length then some p else (st.entry q).m_group := by
  unfold Reader.setGroup
  by_cases h : (st.entry e).m_group = some p
  · rw [if_pos h]
    split
    · rename_i h2
      rw [h2.1, h]
    · rfl
  · rw [if_neg h]
    cases hg : (st.entry e).m_group with
    | none =>
      simp only
      rw [entry_updGroup, entry_updEntry]
      split <;> rfl
    | some q0 =>
      simp only
      rw [entry_updGroup, entry_updEntry, entry_updGroup]
      simp only [Reader.updGroup_entries]
      split
      · rfl
      · rw [entry_updGroup]

/-- After the loop of `parseGroup` over the entries read, each of them is owned
by the group of the element. -/
theorem m_group_adopt (g : Nat) (es : List Nat) (st : Reader)
    (hc : ∀ e ∈ es, e < st.entries.length) :
    (es.foldl (fun s e => s.setGroup e g) st).entries.length = st.entries.length ∧
    (∀ e ∈ es, ((es.foldl (fun s e => s.setGroup e g) st).entry e).m_group = some g) ∧
    (∀ q, q ∉ es → ((es.foldl (fun s e => s.setGroup e g) st).entry q).m_group =
      (st.entry q).m_group) := by
  induction es generalizing st with
  | nil => exact ⟨rfl, fun c hc => absurd hc (List.not_mem_nil c), fun _ _ => rfl⟩
  | cons c rest ih =>
    simp only [List.foldl_cons]
    have hl := entries_length_setGroup st c g
    obtain ⟨k1, k2, k3⟩ := ih (st.setGroup c g)
      (fun x hx => by rw [hl]; exact hc x (List.mem_cons_of_mem _ hx))
    refine ⟨k1.trans hl, ?_, ?_⟩
    · intro x hx
      by_cases hr : x ∈ rest
      · exact k2 x hr
      · rcases List.mem_cons.mp hx with rfl | hx
        · rw [k3 x hr, m_group_setGroup, if_pos ⟨rfl, hc x (List.mem_cons_self _ _)⟩]
        · exact absurd hx hr
    · intro q hq
      have hq1 : q ≠ c := fun e => hq (e ▸ List.mem_cons_self _ _)
      have hq2 : q ∉ rest := fun e => hq (List.mem_cons_of_mem _ e)
      rw [k3 q hq2, m_group_setGroup, if_neg (fun h => hq1 h.1)]

theorem group_logGroup (s : Reader) (u : Uuid) (g q : Nat) :
    (s.logGroup u g).group q = s.group q := rfl

theorem entry_logEntry (s : Reader) (u : Uuid) (e q : Nat) :
    (s.logEntry u e).entry q = s.entry q := rfl

theorem group_defGroup (s : Reader) (u : Uuid) (g q : Nat) :
    (s.defGroup u g).group q = s.group q := rfl

theorem entry_defEntry (s : Reader) (u : Uuid) (e q : Nat) :
    (s.defEntry u e).entry q = s.entry q := rfl

/-- The merge of a local group whose UUID is in the registry already: the
object of the registry takes the data of the local group and keeps its tree
links, the local group is deleted, no error is raised. -/
theorem mergeGroup_registered (t p : Nat) (st : Reader)
    (hu : (st.group t).m_uuid.isNull = false)
    (hm : mapGet (st.group t).m_uuid st.m_groups = some p) (hp : p < st.groups.length)
    (ht : t < st.groups.length) (hne : p ≠ t) :
    (mergeGroup t st).1 = p ∧ (mergeGroup t st).2.errorState = st.errorState ∧
    (mergeGroup t st).2.m_groups = st.m_groups ∧
    (mergeGroup t st).2.groups.length = st.groups.length ∧
    (mergeGroup t st).2.group p =
      { (st.group p).copyDataFrom (st.group t) with m_updateTimeinfo := false } ∧
    ((mergeGroup t st).2.group t).deleted = true ∧
    (∀ q, q ≠ p → q ≠ t → (mergeGroup t st).2.group q = st.group q) := by
  rw [mergeGroup_some hu (getGroup_old hu hm)]
  dsimp only
  generalize hs1 : st.logGroup (st.group t).m_uuid p = s1
  have e1 : s1.errorState = st.errorState := by rw [← hs1]; rfl
  have e2 : s1.m_groups = st.m_groups := by rw [← hs1]; rfl
  have e3 : s1.groups.length = st.groups.length := by rw [← hs1]; rfl
  have e4 : ∀ q, s1.group q = st.group q := fun q => by rw [← hs1]; rfl
  have hp1 : p < s1.groups.length := by rw [e3]; exact hp
  have ht1 : t < s1.groups.length := by rw [e3]; exact ht
  refine ⟨rfl, ?_, ?_, ?_, ?_, ?_, ?_⟩
  · have : ∀ (x : Reader) (u : Uuid) (g : Nat), (x.defGroup u g).errorState = x.errorState :=
      fun _ _ _ => rfl
    rw [this]
    unfold Reader.deleteGroup
    rw [errorState_updGroup, errorState_updGroup, errorState_updGroup, e1]
  · have : ∀ (x : Reader) (u : Uuid) (g : Nat), (x.defGroup u g).m_groups = x.m_groups :=
      fun _ _ _ => rfl
    rw [this]
    unfold Reader.deleteGroup
    simp only [Reader.updGroup_m_groups, e2]
  · have : ∀ (x : Reader) (u : Uuid) (g : Nat),
        (x.defGroup u g).groups.length = x.groups.length := fun _ _ _ => rfl
    rw [this]
    unfold Reader.deleteGroup
    simp only [Reader.updGroup_groups_length, e3]
  · rw [group_defGroup]
    unfold Reader.deleteGroup
    rw [group_updGroup, if_neg (fun h => hne h.1), group_updGroup,
      if_pos ⟨rfl, by simpa using hp1⟩, group_updGroup, if_pos ⟨rfl, hp1⟩, e4, e4]
  · rw [group_defGroup]
    unfold Reader.deleteGroup
    rw [group_updGroup, if_pos ⟨rfl, by simpa using ht1⟩]
  · intro q h1 h2
    rw [group_defGroup]
    unfold Reader.deleteGroup
    rw [group_updGroup, if_neg (fun h => h2 h.1), group_updGroup, if_neg (fun h => h1 h.1),
      group_updGroup, if_neg (fun h => h1 h.1), e4]

/-- The merge of a local entry whose UUID is in the registry already. -/
theorem mergeEntry_registered (t p : Nat) (st : Reader)
    (hu : (st.entry t).m_uuid.isNull = false)
    (hm : mapGet (st.entry t).m_uuid st.m_entries = some p) (hp : p < st.entries.length)
    (ht : t < st.entries.length) (hne : p ≠ t) :
    (mergeEntry false t st).1 = p ∧ (mergeEntry false t st).2.errorState = st.errorState ∧
    (mergeEntry false t st).2.m_entries = st.m_entries ∧
    (mergeEntry false t st).2.entries.length = st.entries.length ∧
    (mergeEntry false t st).2.entry p =
      { (st.entry p).copyDataFrom (st.entry t) with m_updateTimeinfo := false } ∧
    ((mergeEntry false t st).2.entry t).deleted = true ∧
    (∀ q, q ≠ p → q ≠ t → (mergeEntry false t st).2.entry q = st.entry q) := by
  rw [mergeEntry_some hu (getEntry_old hu hm)]
  dsimp only
  generalize hs1 : st.logEntry (st.entry t).m_uuid p = s1
  have e1 : s1.errorState = st.errorState := by rw [← hs1]; rfl
  have e2 : s1.m_entries = st.m_entries := by rw [← hs1]; rfl
  have e3 : s1.entries.length = st.entries.length := by rw [← hs1]; rfl
  have e4 : ∀ q, s1.entry q = st.entry q := fun q => by rw [← hs1]; rfl
  have hp1 : p < s1.entries.length := by rw [e3]; exact hp
  have ht1 : t < s1.entries.length := by rw [e3]; exact ht
  refine ⟨rfl, ?_, ?_, ?_, ?_, ?_, ?_⟩
  · have : ∀ (x : Reader) (u : Uuid) (g : Nat), (x.defEntry u g).errorState = x.errorState :=
      fun _ _ _ => rfl
    rw [this]
    unfold Reader.deleteEntry
    rw [errorState_updEntry, errorState_updEntry, errorState_updEntry, e1]
  · have : ∀ (x : Reader) (u : Uuid) (g : Nat), (x.defEntry u g).m_entries = x.m_entries :=
      fun _ _ _ => rfl
    rw [this]
    unfold Reader.deleteEntry
    simp only [Reader.updEntry_m_entries, e2]
  · have : ∀ (x : Reader) (u : Uuid) (g : Nat),
        (x.defEntry u g).entries.length = x.entries.length := fun _ _ _ => rfl
    rw [this]
    unfold Reader.deleteEntry
    simp only [Reader.updEntry_entries_length, e3]
  · rw [entry_defEntry]
    unfold Reader.deleteEntry
    rw [entry_updEntry, if_neg (fun h => hne h.1), entry_updEntry,
      if_pos ⟨rfl, by simpa using hp1⟩, entry_updEntry, if_pos ⟨rfl, hp1⟩, e4, e4]
  · rw [entry_defEntry]
    unfold Reader.deleteEntry
    rw [entry_updEntry, if_pos ⟨rfl, by simpa using ht1⟩]
  · intro q h1 h2
    rw [entry_defEntry]
    unfold Reader.deleteEntry
    rw [entry_updEntry, if_neg (fun h => h2 h.1), entry_updEntry, if_neg (fun h => h1 h.1),
      entry_updEntry, if_neg (fun h => h1 h.1), e4]

/-- The heaps never shrink. -/
theorem stable_lengths (n m : Nat) :
    Stable (fun s => n ≤ s.groups.length ∧ m ≤ s.entries.length) := by
  refine ⟨⟨?_, ?_, ?_, ?_, ?_, ?_, ?_, ?_, ?_, ?_, ?_, ?_, ?_⟩, ?_, ?_, ?_, ?_, ?_, ?_, ?_, ?_, ?_⟩
  case refine_5 =>
    intro st u h
    exact ⟨le_trans h.1 (getGroup_effect u st).1, by simpa using h.2⟩
  case refine_6 =>
    intro st u h
    exact ⟨by rw [(getEntry_effect u st).1]; exact h.1, le_trans h.2 (getEntry_effect u st).2.1⟩
  all_goals
    intros
    simp_all [Reader.raiseError, Reader.setMeta, Reader.newGroup, Reader.newEntry,
      Reader.randomUuid, Reader.cipherProcess]
  all_goals omega

/-- The code of `parseGroup` after its loop hangs every child group read under
the group it returns and gives it every entry read. -/
theorem parseGroupFinish_adopts (env : Env) (l : GroupLocals) (st : Reader)
    (hc : ∀ c ∈ l.children, c < st.groups.length)
    (he : ∀ e ∈ l.entries, e < st.entries.length) :
    (∀ c ∈ l.children,
      ((parseGroupFinish env l st).2.group c).m_parent =
        .group (parseGroupFinish env l st).1) ∧
    (∀ e ∈ l.entries,
      ((parseGroupFinish env l st).2.entry e).m_group = some (parseGroupFinish env l st).1) := by
  rw [parseGroupFinish_parts]
  dsimp only
  generalize hg : (mergeGroup l.group (ensureGroupUuid env l.group st)).1 = g
  have hlen : st.groups.length ≤ (mergeGroup l.group (ensureGroupUuid env l.group st)).2.groups.length ∧
      st.entries.length ≤ (mergeGroup l.group (ensureGroupUuid env l.group st)).2.entries.length :=
    mergeGroup_stable (stable_lengths st.groups.length st.entries.length)
      (ensureGroupUuid_stable (stable_lengths st.groups.length st.entries.length).1
        ⟨le_refl _, le_refl _⟩)
  generalize (mergeGroup l.group (ensureGroupUuid env l.group st)).2 = s2 at hlen
  obtain ⟨k1, k2, k3⟩ := m_parent_adopt g l.children s2
    (fun c h => lt_of_lt_of_le (hc c h) hlen.1)
  have hel : (l.children.foldl (fun s c => s.setParent c g) s2).entries.length =
      s2.entries.length :=
    foldl_obs (fun s => s.entries.length) (fun s a => by simp) l.children s2
  obtain ⟨j1, j2, j3⟩ := m_group_adopt g l.entries
    (l.children.foldl (fun s c => s.setParent c g) s2)
    (fun e h => by rw [hel]; exact lt_of_lt_of_le (he e h) hlen.2)
  refine ⟨?_, j2⟩
  intro c hcm
  rw [foldl_obs (fun s => (s.group c).m_parent) (fun s a => group_setGroup_parent s a g c)
    l.entries]
  exact k2 c hcm

/-- The code of `parseGroup` after its loop raises no error for a local group
with a UUID, in either mode. -/
theorem parseGroupFinish_errorState (env : Env) (l : GroupLocals) (st : Reader)
    (hu : (st.group l.group).m_uuid.isNull = false)
    (hreg : ∀ u p, mapGet u st.m_groups = some p → p < st.groups.length)
    (ht : l.group < st.groups.length) :
    (parseGroupFinish env l st).2.errorState = st.errorState := by
  rw [parseGroupFinish_parts, ensureGroupUuid_of_uuid env _ st hu]
  dsimp only
  rw [foldl_obs Reader.errorState (fun s a => errorState_setGroup s a _),
    foldl_obs Reader.errorState (fun s a => errorState_setParent s a _)]
  exact (mergeGroup_uuid l.group st hu hreg ht).1

/-- The merge step of `parseEntry` in history mode makes no lookup in the
registry. -/
theorem mergeEntry_history_mode (t : Nat) (st : Reader)
    (hu : (st.entry t).m_uuid.isNull = false) :
    mergeEntry true t st =
      (t, st.updEntry t (fun e => { e with m_updateTimeinfo := false })) := by
  unfold mergeEntry
  rw [if_pos (by simp [hu]), if_pos rfl]

/-- C30: `parseEntry` in history mode returns a new object of the heap and
leaves the registry of entries, the registry of groups and every entry that
was in the heap as they were; so does `parseEntryHistory`, whose items are all
new objects. This holds of every result they return, on every state; and on
every state with a keystream cipher and with fuel enough they do return,
without any dereference of a null `m_randomStream`. The merge step in history
mode makes no lookup in the registry. A history item that carries the UUID of
its entry is thus an object of its own and the data of the entry of the
registry stay. After a decode the registry of entries maps each UUID to an
entry of the heap that carries this UUID, never null, and that is in no
history, no history item is in the registry, and the registry of groups maps
each UUID to a group that carries it: this holds of the state in which a
decode with a keystream cipher returns, which it does for every document, and
of the state in which any decode returns, whatever the cipher, null or not. In `Sample.docHistorySameUuid` the entry,
at 2, keeps the tags `now`, and its history item, at 1, with the same UUID, has
the tags `old`. -/
theorem C30_history_outside_registry (env : Env) :
    (∀ (n : Nat) (st : Reader), st.nullDeref = false → st.m_randomStream.isSome = true →
      2 * st.work + 2 ≤ n →
      ∃ r, parseEntry env n true st = some r ∧ r.2.nullDeref = false ∧
        r.2.m_entries = st.m_entries ∧
        r.2.m_groups = st.m_groups ∧ r.1 = st.entries.length ∧ r.1 < r.2.entries.length ∧
        (∀ q, q < st.entries.length → r.2.entry q = st.entry q)) ∧
    (∀ (n : Nat) (st : Reader) (r : Nat × Reader), parseEntry env n true st = some r →
      r.2.m_entries = st.m_entries ∧
        r.2.m_groups = st.m_groups ∧ r.1 = st.entries.length ∧ r.1 < r.2.entries.length ∧
        (∀ q, q < st.entries.length → r.2.entry q = st.entry q)) ∧
    (∀ (n : Nat) (st : Reader), st.nullDeref = false → st.m_randomStream.isSome = true →
      2 * st.work + 2 ≤ n →
      ∃ r, parseEntryHistory env n st = some r ∧ r.2.nullDeref = false ∧
        r.2.m_entries = st.m_entries ∧
        (∀ q, q < st.entries.length → r.2.entry q = st.entry q) ∧
        (∀ h ∈ r.1, st.entries.length ≤ h ∧ h < r.2.entries.length)) ∧
    (∀ (n : Nat) (st : Reader) (r : List Nat × Reader), parseEntryHistory env n st = some r →
      r.2.m_entries = st.m_entries ∧
        (∀ q, q < st.entries.length → r.2.entry q = st.entry q) ∧
        (∀ h ∈ r.1, st.entries.length ≤ h ∧ h < r.2.entries.length)) ∧
    (∀ (t : Nat) (st : Reader), (st.entry t).m_uuid.isNull = false →
      mergeEntry true t st =
        (t, st.updEntry t (fun e => { e with m_updateTimeinfo := false }))) ∧
    (∀ (strictMode : Bool) (binaryPool : List (String × QByteArray))
      (rs : QByteArray) (doc : XmlElement),
      ∃ r, readDatabase env strictMode binaryPool (some rs) doc = some r ∧
        r.nullDeref = false ∧
        (∀ u e, mapGet u r.m_entries = some e →
          e < r.entries.length ∧ (r.entry e).m_uuid = u ∧ u.isNull = false ∧
            ∀ x, e ∉ (r.entry x).m_history) ∧
        (∀ x h, h ∈ (r.entry x).m_history → ∀ u, mapGet u r.m_entries ≠ some h) ∧
        (∀ u p, mapGet u r.m_groups = some p →
          p < r.groups.length ∧ (r.group p).m_uuid = u ∧ u.isNull = false)) ∧
    (∀ (strictMode : Bool) (binaryPool : List (String × QByteArray))
      (randomStream : Option QByteArray) (doc : XmlElement) (r : Reader),
      readDatabase env strictMode binaryPool randomStream doc = some r →
        (∀ u e, mapGet u r.m_entries = some e →
          e < r.entries.length ∧ (r.entry e).m_uuid = u ∧ u.isNull = false ∧
            ∀ x, e ∉ (r.entry x).m_history) ∧
        (∀ x h, h ∈ (r.entry x).m_history → ∀ u, mapGet u r.m_entries ≠ some h) ∧
        (∀ u p, mapGet u r.m_groups = some p →
          p < r.groups.length ∧ (r.group p).m_uuid = u ∧ u.isNull = false)) ∧
    (readDatabase Env.sample true [] none Sample.docHistorySameUuid).map
        Reader.observeEntries =
      some (false, "",
        [(⟨[32, 33, 34, 35, 36, 37, 38, 39, 40, 41, 42, 43, 44, 45, 46, 47]⟩, 2)],
        [(3, [2])],
        [(2, "now", some 3,
          [(1, ⟨[32, 33, 34, 35, 36, 37, 38, 39, 40, 41, 42, 43, 44, 45, 46, 47]⟩, "old")])]) ∧
    (readDatabase Env.sample false [] none Sample.docHistorySameUuid).map
        Reader.observeEntries =
      some (false, "",
        [(⟨[32, 33, 34, 35, 36, 37, 38, 39, 40, 41, 42, 43, 44, 45, 46, 47]⟩, 2)],
        [(3, [2])],
        [(2, "now", some 3,
          [(1, ⟨[32, 33, 34, 35, 36, 37, 38, 39, 40, 41, 42, 43, 44, 45, 46, 47]⟩, "old")])]) := by
  have k1 : ∀ (n : Nat) (st : Reader) (r : Nat × Reader), parseEntry env n true st = some r →
      r.2.m_entries = st.m_entries ∧
        r.2.m_groups = st.m_groups ∧ r.1 = st.entries.length ∧ r.1 < r.2.entries.length ∧
        (∀ q, q < st.entries.length → r.2.entry q = st.entry q) := by
    intro n st r hr
    obtain ⟨f, h1, h2⟩ := (entry_frame env n).2.1 st r hr
    exact ⟨f.m_entries, f.m_groups, h1, h2, fun q hq => f.old q hq (Nat.ne_of_lt hq)⟩
  have k2 : ∀ (n : Nat) (st : Reader) (r : List Nat × Reader),
      parseEntryHistory env n st = some r →
      r.2.m_entries = st.m_entries ∧
        (∀ q, q < st.entries.length → r.2.entry q = st.entry q) ∧
        (∀ h ∈ r.1, st.entries.length ≤ h ∧ h < r.2.entries.length) := by
    intro n st r hr
    obtain ⟨f, h1⟩ := (entry_frame env n).2.2.2 st r hr
    exact ⟨f.m_entries, fun q hq => f.old q hq (Nat.ne_of_lt hq), h1⟩
  have k3 : ∀ (strictMode : Bool) (binaryPool : List (String × QByteArray))
      (randomStream : Option QByteArray) (doc : XmlElement) (r : Reader),
      readDatabase env strictMode binaryPool randomStream doc = some r →
        (∀ u e, mapGet u r.m_entries = some e →
          e < r.entries.length ∧ (r.entry e).m_uuid = u ∧ u.isNull = false ∧
            ∀ x, e ∉ (r.entry x).m_history) ∧
        (∀ x h, h ∈ (r.entry x).m_history → ∀ u, mapGet u r.m_entries ≠ some h) ∧
        (∀ u p, mapGet u r.m_groups = some p →
          p < r.groups.length ∧ (r.group p).m_uuid = u ∧ u.isNull = false) := by
    intro strictMode binaryPool randomStream doc r hr
    have hi : HeapInv r :=
      (readDatabaseFuel_heap env _ strictMode binaryPool randomStream doc r hr).1
    refine ⟨?_, fun x h hh => hi.hist_unreg x h hh, ?_⟩
    · intro u e hm
      exact ⟨hi.ereg_lt u e hm, (hi.ereg_uuid u e hm).1, (hi.ereg_uuid u e hm).2,
        fun x hx => hi.hist_unreg x e hx u hm⟩
    · intro u p hm
      exact ⟨hi.greg_lt u p hm, (hi.greg_uuid u p hm).1, (hi.greg_uuid u p hm).2⟩
  refine ⟨?_, k1, ?_, k2, fun t st hu => mergeEntry_history_mode t st hu, ?_, k3, rfl, rfl⟩
  · intro n st hd hs hn
    obtain ⟨r, hr, hd1⟩ := (entry_returns env n st hd hs hn).2.1 true
    exact ⟨r, hr, hd1, k1 n st r hr⟩
  · intro n st hd hs hn
    obtain ⟨r, hr, hd1⟩ := (entry_returns env n st hd hs hn).2.2.2
    exact ⟨r, hr, hd1, k2 n st r hr⟩
  · intro strictMode binaryPool rs doc
    obtain ⟨r, hr, hd⟩ := readDatabase_returns env strictMode binaryPool rs doc
    exact ⟨r, hr, hd, k3 strictMode binaryPool _ doc r hr⟩

/-- Witness of C30: `parseEntry` in history mode at the start of a decode of
`Sample.docStray` with the keystream cipher of state `[]`, with the fuel 40. -/
theorem C30_history_outside_registry_witness :
    (Reader.start true [] (some []) Sample.docStray).nullDeref = false ∧
    (Reader.start true [] (some []) Sample.docStray).m_randomStream.isSome = true ∧
    2 * (Reader.start true [] (some []) Sample.docStray).work + 2 ≤ 40 ∧
    (∃ r, parseEntry Env.sample 40 true (Reader.start true [] (some []) Sample.docStray) =
        some r ∧ r.2.nullDeref = false ∧
      r.2.m_entries = (Reader.start true [] (some []) Sample.docStray).m_entries ∧
      r.2.m_groups = (Reader.start true [] (some []) Sample.docStray).m_groups ∧
      r.1 = (Reader.start true [] (some []) Sample.docStray).entries.length ∧
      r.1 < r.2.entries.length ∧
      (∀ q, q < (Reader.start true [] (some []) Sample.docStray).entries.length →
        r.2.entry q = (Reader.start true [] (some []) Sample.docStray).entry q)) :=
  ⟨rfl, rfl, by decide, (C30_history_outside_registry Env.sample).1 40
    (Reader.start true [] (some []) Sample.docStray) rfl rfl (by decide)⟩

/-! ### Every step that leaves the cipher alone keeps a quiet property -/

theorem Reader.deleteGroup_quiet {P : Reader → Prop} (hP : QuietLeaf P) {st : Reader} {p : Nat}
    (h : P st) : P (st.deleteGroup p) := by
  unfold Reader.deleteGroup
  repeat' (first
    | assumption
    | with_reducible apply stable_ite
    | with_reducible apply stable_ite_snd
    | exact fun _ => rfl
    | with_reducible apply hP.updGroup
    | with_reducible apply hP.updEntry
    | with_reducible apply hP.raiseError
    | with_reducible apply hP.setMeta
    | with_reducible apply hP.getGroup
    | with_reducible apply hP.getEntry
    | with_reducible apply hP.randomUuid
    | with_reducible apply hP.setNullDeref
    | with_reducible apply hP.setXmlError
    | with_reducible apply hP.setHeaderHash
    | with_reducible apply hP.setBinaryPool
    | with_reducible apply hP.addDeletedObject
    | refine snd_of_eq (by assumption) (hP.getGroup _ _ ?_)
    | refine snd_of_eq (by assumption) (hP.getEntry _ _ ?_)
    | refine snd_of_eq (by assumption) (hP.randomUuid _ _ ?_)
    | dsimp only
    | split)

theorem Reader.deleteEntry_quiet {P : Reader → Prop} (hP : QuietLeaf P) {st : Reader} {p : Nat}
    (h : P st) : P (st.deleteEntry p) := by
  unfold Reader.deleteEntry
  repeat' (first
    | assumption
    | with_reducible apply stable_ite
    | with_reducible apply stable_ite_snd
    | exact fun _ => rfl
    | with_reducible apply hP.updGroup
    | with_reducible apply hP.updEntry
    | with_reducible apply hP.raiseError
    | with_reducible apply hP.setMeta
    | with_reducible apply hP.getGroup
    | with_reducible apply hP.getEntry
    | with_reducible apply hP.randomUuid
    | with_reducible apply hP.setNullDeref
    | with_reducible apply hP.setXmlError
    | with_reducible apply hP.setHeaderHash
    | with_reducible apply hP.setBinaryPool
    | with_reducible apply hP.addDeletedObject
    | refine snd_of_eq (by assumption) (hP.getGroup _ _ ?_)
    | refine snd_of_eq (by assumption) (hP.getEntry _ _ ?_)
    | refine snd_of_eq (by assumption) (hP.randomUuid _ _ ?_)
    | dsimp only
    | split)

theorem readString_quiet {P : Reader → Prop} (hP : QuietLeaf P) {x : XmlElement} {st : Reader}
    (h : P st) : P ((readString x st).2) := by
  unfold readString
  repeat' (first
    | assumption
    | with_reducible apply stable_ite
    | with_reducible apply stable_ite_snd
    | exact fun _ => rfl
    | with_reducible apply hP.updGroup
    | with_reducible apply hP.updEntry
    | with_reducible apply hP.raiseError
    | with_reducible apply hP.setMeta
    | with_reducible apply hP.getGroup
    | with_reducible apply hP.getEntry
    | with_reducible apply hP.randomUuid
    | with_reducible apply hP.setNullDeref
    | with_reducible apply hP.setXmlError
    | with_reducible apply hP.setHeaderHash
    | with_reducible apply hP.setBinaryPool
    | with_reducible apply hP.addDeletedObject
    | refine snd_of_eq (by assumption) (hP.getGroup _ _ ?_)
    | refine snd_of_eq (by assumption) (hP.getEntry _ _ ?_)
    | refine snd_of_eq (by assumption) (hP.randomUuid _ _ ?_)
    | dsimp only
    | split)

theorem readBool_quiet {P : Reader → Prop} (hP : QuietLeaf P) {x : XmlElement} {st : Reader}
    (h : P st) : P ((readBool x st).2) := by
  unfold readBool
  repeat' (first
    | assumption
    | with_reducible apply stable_ite
    | with_reducible apply stable_ite_snd
    | exact fun _ => rfl
    | with_reducible apply hP.updGroup
    | with_reducible apply hP.updEntry
    | with_reducible apply hP.raiseError
    | with_reducible apply hP.setMeta
    | with_reducible apply hP.getGroup
    | with_reducible apply hP.getEntry
    | with_reducible apply hP.randomUuid
    | with_reducible apply hP.setNullDeref
    | with_reducible apply hP.setXmlError
    | with_reducible apply hP.setHeaderHash
    | with_reducible apply hP.setBinaryPool
    | with_reducible apply hP.addDeletedObject
    | with_reducible apply readString_quiet hP
    | refine snd_of_eq (by assumption) (readString_quiet hP ?_)
    | refine snd_of_eq (by assumption) (hP.getGroup _ _ ?_)
    | refine snd_of_eq (by assumption) (hP.getEntry _ _ ?_)
    | refine snd_of_eq (by assumption) (hP.randomUuid _ _ ?_)
    | dsimp only
    | split)

theorem readNumber_quiet {P : Reader → Prop} (hP : QuietLeaf P) {env : Env} {x : XmlElement} {st : Reader}
    (h : P st) : P ((readNumber env x st).2) := by
  unfold readNumber
  repeat' (first
    | assumption
    | with_reducible apply stable_ite
    | with_reducible apply stable_ite_snd
    | exact fun _ => rfl
    | with_reducible apply hP.updGroup
    | with_reducible apply hP.updEntry
    | with_reducible apply hP.raiseError
    | with_reducible apply hP.setMeta
    | with_reducible apply hP.getGroup
    | with_reducible apply hP.getEntry
    | with_reducible apply hP.randomUuid
    | with_reducible apply hP.setNullDeref
    | with_reducible apply hP.setXmlError
    | with_reducible apply hP.setHeaderHash
    | with_reducible apply hP.setBinaryPool
    | with_reducible apply hP.addDeletedObject
    | with_reducible apply readString_quiet hP
    | refine snd_of_eq (by assumption) (readString_quiet hP ?_)
    | refine snd_of_eq (by assumption) (hP.getGroup _ _ ?_)
    | refine snd_of_eq (by assumption) (hP.getEntry _ _ ?_)
    | refine snd_of_eq (by assumption) (hP.randomUuid _ _ ?_)
    | dsimp only
    | split)

theorem readBinary_quiet {P : Reader → Prop} (hP : QuietLeaf P) {env : Env} {x : XmlElement} {st : Reader}
    (h : P st) : P ((readBinary env x st).2) := by
  unfold readBinary
  repeat' (first
    | assumption
    | with_reducible apply stable_ite
    | with_reducible apply stable_ite_snd
    | exact fun _ => rfl
    | with_reducible apply hP.updGroup
    | with_reducible apply hP.updEntry
    | with_reducible apply hP.raiseError
    | with_reducible apply hP.setMeta
    | with_reducible apply hP.getGroup
    | with_reducible apply hP.getEntry
    | with_reducible apply hP.randomUuid
    | with_reducible apply hP.setNullDeref
    | with_reducible apply hP.setXmlError
    | with_reducible apply hP.setHeaderHash
    | with_reducible apply hP.setBinaryPool
    | with_reducible apply hP.addDeletedObject
    | with_reducible apply readString_quiet hP
    | refine snd_of_eq (by assumption) (readString_quiet hP ?_)
    | refine snd_of_eq (by assumption) (hP.getGroup _ _ ?_)
    | refine snd_of_eq (by assumption) (hP.getEntry _ _ ?_)
    | refine snd_of_eq (by assumption) (hP.randomUuid _ _ ?_)
    | dsimp only
    | split)

theorem readUuid_quiet {P : Reader → Prop} (hP : QuietLeaf P) {env : Env} {x : XmlElement} {st : Reader}
    (h : P st) : P ((readUuid env x st).2) := by
  unfold readUuid
  repeat' (first
    | assumption
    | with_reducible apply stable_ite
    | with_reducible apply stable_ite_snd
    | exact fun _ => rfl
    | with_reducible apply hP.updGroup
    | with_reducible apply hP.updEntry
    | with_reducible apply hP.raiseError
    | with_reducible apply hP.setMeta
    | with_reducible apply hP.getGroup
    | with_reducible apply hP.getEntry
    | with_reducible apply hP.randomUuid
    | with_reducible apply hP.setNullDeref
    | with_reducible apply hP.setXmlError
    | with_reducible apply hP.setHeaderHash
    | with_reducible apply hP.setBinaryPool
    | with_reducible apply hP.addDeletedObject
    | with_reducible apply readBinary_quiet hP
    | refine snd_of_eq (by assumption) (readBinary_quiet hP ?_)
    | refine snd_of_eq (by assumption) (hP.getGroup _ _ ?_)
    | refine snd_of_eq (by assumption) (hP.getEntry _ _ ?_)
    | refine snd_of_eq (by assumption) (hP.randomUuid _ _ ?_)
    | dsimp only
    | split)

theorem readCompressedBinary_quiet {P : Reader → Prop} (hP : QuietLeaf P) {env : Env} {x : XmlElement} {st : Reader}
    (h : P st) : P ((readCompressedBinary env x st).2) := by
  unfold readCompressedBinary
  repeat' (first
    | assumption
    | with_reducible apply stable_ite
    | with_reducible apply stable_ite_snd
    | exact fun _ => rfl
    | with_reducible apply hP.updGroup
    | with_reducible apply hP.updEntry
    | with_reducible apply hP.raiseError
    | with_reducible apply hP.setMeta
    | with_reducible apply hP.getGroup
    | with_reducible apply hP.getEntry
    | with_reducible apply hP.randomUuid
    | with_reducible apply hP.setNullDeref
    | with_reducible apply hP.setXmlError
    | with_reducible apply hP.setHeaderHash
    | with_reducible apply hP.setBinaryPool
    | with_reducible apply hP.addDeletedObject
    | with_reducible apply readBinary_quiet hP
    | refine snd_of_eq (by assumption) (readBinary_quiet hP ?_)
    | refine snd_of_eq (by assumption) (hP.getGroup _ _ ?_)
    | refine snd_of_eq (by assumption) (hP.getEntry _ _ ?_)
    | refine snd_of_eq (by assumption) (hP.randomUuid _ _ ?_)
    | dsimp only
    | split)

theorem readDateTime_quiet {P : Reader → Prop} (hP : QuietLeaf P) {env : Env} {x : XmlElement} {st : Reader}
    (h : P st) : P ((readDateTime env x st).2) := by
  unfold readDateTime
  repeat' (first
    | assumption
    | with_reducible apply stable_ite
    | with_reducible apply stable_ite_snd
    | exact fun _ => rfl
    | with_reducible apply hP.updGroup
    | with_reducible apply hP.updEntry
    | with_reducible apply hP.raiseError
    | with_reducible apply hP.setMeta
    | with_reducible apply hP.getGroup
    | with_reducible apply hP.getEntry
    | with_reducible apply hP.randomUuid
    | with_reducible apply hP.setNullDeref
    | with_reducible apply hP.setXmlError
    | with_reducible apply hP.setHeaderHash
    | with_reducible apply hP.setBinaryPool
    | with_reducible apply hP.addDeletedObject
    | with_reducible apply readString_quiet hP
    | refine snd_of_eq (by assumption) (readString_quiet hP ?_)
    | refine snd_of_eq (by assumption) (hP.getGroup _ _ ?_)
    | refine snd_of_eq (by assumption) (hP.getEntry _ _ ?_)
    | refine snd_of_eq (by assumption) (hP.randomUuid _ _ ?_)
    | dsimp only
    | split)

theorem readColor_quiet {P : Reader → Prop} (hP : QuietLeaf P) {env : Env} {x : XmlElement} {st : Reader}
    (h : P st) : P ((readColor env x st).2) := by
  unfold readColor
  repeat' (first
    | assumption
    | with_reducible apply stable_ite
    | with_reducible apply stable_ite_snd
    | exact fun _ => rfl
    | with_reducible apply hP.updGroup
    | with_reducible apply hP.updEntry
    | with_reducible apply hP.raiseError
    | with_reducible apply hP.setMeta
    | with_reducible apply hP.getGroup
    | with_reducible apply hP.getEntry
    | with_reducible apply hP.randomUuid
    | with_reducible apply hP.setNullDeref
    | with_reducible apply hP.setXmlError
    | with_reducible apply hP.setHeaderHash
    | with_reducible apply hP.setBinaryPool
    | with_reducible apply hP.addDeletedObject
    | with_reducible apply readString_quiet hP
    | refine snd_of_eq (by assumption) (readString_quiet hP ?_)
    | refine snd_of_eq (by assumption) (hP.getGroup _ _ ?_)
    | refine snd_of_eq (by assumption) (hP.getEntry _ _ ?_)
    | refine snd_of_eq (by assumption) (hP.randomUuid _ _ ?_)
    | dsimp only
    | split)

theorem parseMemoryProtectionChild_quiet {P : Reader → Prop} (hP : QuietLeaf P) {c : XmlElement} {s : Unit × Reader}
    (h : P s.2) : P ((parseMemoryProtectionChild c s).2) := by
  unfold parseMemoryProtectionChild
  repeat' (first
    | assumption
    | with_reducible apply stable_ite
    | with_reducible apply stable_ite_snd
    | exact fun _ => rfl
    | with_reducible apply hP.updGroup
    | with_reducible apply hP.updEntry
    | with_reducible apply hP.raiseError
    | with_reducible apply hP.setMeta
    | with_reducible apply hP.getGroup
    | with_reducible apply hP.getEntry
    | with_reducible apply hP.randomUuid
    | with_reducible apply hP.setNullDeref
    | with_reducible apply hP.setXmlError
    | with_reducible apply hP.setHeaderHash
    | with_reducible apply hP.setBinaryPool
    | with_reducible apply hP.addDeletedObject
    | with_reducible apply readBool_quiet hP
    | refine snd_of_eq (by assumption) (readBool_quiet hP ?_)
    | refine snd_of_eq (by assumption) (hP.getGroup _ _ ?_)
    | refine snd_of_eq (by assumption) (hP.getEntry _ _ ?_)
    | refine snd_of_eq (by assumption) (hP.randomUuid _ _ ?_)
    | dsimp only
    | split)

theorem parseMemoryProtection_quiet {P : Reader → Prop} (hP : QuietLeaf P) {x : XmlElement} {st : Reader}
    (h : P st) : P (parseMemoryProtection x st) := by
  unfold parseMemoryProtection
  repeat' (first
    | assumption
    | with_reducible apply stable_ite
    | with_reducible apply stable_ite_snd
    | exact forEachChild_stable (fun _ _ hs => parseMemoryProtectionChild_quiet hP hs) h
    | exact snd_of_eq (by assumption) (forEachChild_stable (fun _ _ hs => parseMemoryProtectionChild_quiet hP hs) h)
    | exact fun _ => rfl
    | with_reducible apply hP.updGroup
    | with_reducible apply hP.updEntry
    | with_reducible apply hP.raiseError
    | with_reducible apply hP.setMeta
    | with_reducible apply hP.getGroup
    | with_reducible apply hP.getEntry
    | with_reducible apply hP.randomUuid
    | with_reducible apply hP.setNullDeref
    | with_reducible apply hP.setXmlError
    | with_reducible apply hP.setHeaderHash
    | with_reducible apply hP.setBinaryPool
    | with_reducible apply hP.addDeletedObject
    | refine snd_of_eq (by assumption) (hP.getGroup _ _ ?_)
    | refine snd_of_eq (by assumption) (hP.getEntry _ _ ?_)
    | refine snd_of_eq (by assumption) (hP.randomUuid _ _ ?_)
    | dsimp only
    | split)

theorem parseIconChild_quiet {P : Reader → Prop} (hP : QuietLeaf P) {env : Env} {c : XmlElement} {s : IconLocals × Reader}
    (h : P s.2) : P ((parseIconChild env c s).2) := by
  unfold parseIconChild
  repeat' (first
    | assumption
    | with_reducible apply stable_ite
    | with_reducible apply stable_ite_snd
    | exact fun _ => rfl
    | with_reducible apply hP.updGroup
    | with_reducible apply hP.updEntry
    | with_reducible apply hP.raiseError
    | with_reducible apply hP.setMeta
    | with_reducible apply hP.getGroup
    | with_reducible apply hP.getEntry
    | with_reducible apply hP.randomUuid
    | with_reducible apply hP.setNullDeref
    | with_reducible apply hP.setXmlError
    | with_reducible apply hP.setHeaderHash
    | with_reducible apply hP.setBinaryPool
    | with_reducible apply hP.addDeletedObject
    | with_reducible apply readUuid_quiet hP
    | refine snd_of_eq (by assumption) (readUuid_quiet hP ?_)
    | with_reducible apply readBinary_quiet hP
    | refine snd_of_eq (by assumption) (readBinary_quiet hP ?_)
    | refine snd_of_eq (by assumption) (hP.getGroup _ _ ?_)
    | refine snd_of_eq (by assumption) (hP.getEntry _ _ ?_)
    | refine snd_of_eq (by assumption) (hP.randomUuid _ _ ?_)
    | dsimp only
    | split)

theorem parseIcon_quiet {P : Reader → Prop} (hP : QuietLeaf P) {env : Env} {x : XmlElement} {st : Reader}
    (h : P st) : P (parseIcon env x st) := by
  unfold parseIcon
  repeat' (first
    | assumption
    | with_reducible apply stable_ite
    | with_reducible apply stable_ite_snd
    | exact forEachChild_stable (fun _ _ hs => parseIconChild_quiet hP hs) h
    | exact snd_of_eq (by assumption) (forEachChild_stable (fun _ _ hs => parseIconChild_quiet hP hs) h)
    | exact fun _ => rfl
    | with_reducible apply hP.updGroup
    | with_reducible apply hP.updEntry
    | with_reducible apply hP.raiseError
    | with_reducible apply hP.setMeta
    | with_reducible apply hP.getGroup
    | with_reducible apply hP.getEntry
    | with_reducible apply hP.randomUuid
    | with_reducible apply hP.setNullDeref
    | with_reducible apply hP.setXmlError
    | with_reducible apply hP.setHeaderHash
    | with_reducible apply hP.setBinaryPool
    | with_reducible apply hP.addDeletedObject
    | refine snd_of_eq (by assumption) (hP.getGroup _ _ ?_)
    | refine snd_of_eq (by assumption) (hP.getEntry _ _ ?_)
    | refine snd_of_eq (by assumption) (hP.randomUuid _ _ ?_)
    | dsimp only
    | split)

theorem parseCustomIconsChild_quiet {P : Reader → Prop} (hP : QuietLeaf P) {env : Env} {c : XmlElement} {s : Unit × Reader}
    (h : P s.2) : P ((parseCustomIconsChild env c s).2) := by
  unfold parseCustomIconsChild
  repeat' (first
    | assumption
    | with_reducible apply stable_ite
    | with_reducible apply stable_ite_snd
    | exact fun _ => rfl
    | with_reducible apply hP.updGroup
    | with_reducible apply hP.updEntry
    | with_reducible apply hP.raiseError
    | with_reducible apply hP.setMeta
    | with_reducible apply hP.getGroup
    | with_reducible apply hP.getEntry
    | with_reducible apply hP.randomUuid
    | with_reducible apply hP.setNullDeref
    | with_reducible apply hP.setXmlError
    | with_reducible apply hP.setHeaderHash
    | with_reducible apply hP.setBinaryPool
    | with_reducible apply hP.addDeletedObject
    | with_reducible apply parseIcon_quiet hP
    | refine snd_of_eq (by assumption) (parseIcon_quiet hP ?_)
    | refine snd_of_eq (by assumption) (hP.getGroup _ _ ?_)
    | refine snd_of_eq (by assumption) (hP.getEntry _ _ ?_)
    | refine snd_of_eq (by assumption) (hP.randomUuid _ _ ?_)
    | dsimp only
    | split)

theorem parseCustomIcons_quiet {P : Reader → Prop} (hP : QuietLeaf P) {env : Env} {x : XmlElement} {st : Reader}
    (h : P st) : P (parseCustomIcons env x st) := by
  unfold parseCustomIcons
  repeat' (first
    | assumption
    | with_reducible apply stable_ite
    | with_reducible apply stable_ite_snd
    | exact forEachChild_stable (fun _ _ hs => parseCustomIconsChild_quiet hP hs) h
    | exact snd_of_eq (by assumption) (forEachChild_stable (fun _ _ hs => parseCustomIconsChild_quiet hP hs) h)
    | exact fun _ => rfl
    | with_reducible apply hP.updGroup
    | with_reducible apply hP.updEntry
    | with_reducible apply hP.raiseError
    | with_reducible apply hP.setMeta
    | with_reducible apply hP.getGroup
    | with_reducible apply hP.getEntry
    | with_reducible apply hP.randomUuid
    | with_reducible apply hP.setNullDeref
    | with_reducible apply hP.setXmlError
    | with_reducible apply hP.setHeaderHash
    | with_reducible apply hP.setBinaryPool
    | with_reducible apply hP.addDeletedObject
    | refine snd_of_eq (by assumption) (hP.getGroup _ _ ?_)
    | refine snd_of_eq (by assumption) (hP.getEntry _ _ ?_)
    | refine snd_of_eq (by assumption) (hP.randomUuid _ _ ?_)
    | dsimp only
    | split)

theorem parseBinariesChild_quiet {P : Reader → Prop} (hP : QuietLeaf P) {env : Env} {c : XmlElement} {s : Unit × Reader}
    (h : P s.2) : P ((parseBinariesChild env c s).2) := by
  unfold parseBinariesChild
  repeat' (first
    | assumption
    | with_reducible apply stable_ite
    | with_reducible apply stable_ite_snd
    | exact fun _ => rfl
    | with_reducible apply hP.updGroup
    | with_reducible apply hP.updEntry
    | with_reducible apply hP.raiseError
    | with_reducible apply hP.setMeta
    | with_reducible apply hP.getGroup
    | with_reducible apply hP.getEntry
    | with_reducible apply hP.randomUuid
    | with_reducible apply hP.setNullDeref
    | with_reducible apply hP.setXmlError
    | with_reducible apply hP.setHeaderHash
    | with_reducible apply hP.setBinaryPool
    | with_reducible apply hP.addDeletedObject
    | with_reducible apply readCompressedBinary_quiet hP
    | refine snd_of_eq (by assumption) (readCompressedBinary_quiet hP ?_)
    | with_reducible apply readBinary_quiet hP
    | refine snd_of_eq (by assumption) (readBinary_quiet hP ?_)
    | refine snd_of_eq (by assumption) (hP.getGroup _ _ ?_)
    | refine snd_of_eq (by assumption) (hP.getEntry _ _ ?_)
    | refine snd_of_eq (by assumption) (hP.randomUuid _ _ ?_)
    | dsimp only
    | split)

theorem parseBinaries_quiet {P : Reader → Prop} (hP : QuietLeaf P) {env : Env} {x : XmlElement} {st : Reader}
    (h : P st) : P (parseBinaries env x st) := by
  unfold parseBinaries
  repeat' (first
    | assumption
    | with_reducible apply stable_ite
    | with_reducible apply stable_ite_snd
    | exact forEachChild_stable (fun _ _ hs => parseBinariesChild_quiet hP hs) h
    | exact snd_of_eq (by assumption) (forEachChild_stable (fun _ _ hs => parseBinariesChild_quiet hP hs) h)
    | exact fun _ => rfl
    | with_reducible apply hP.updGroup
    | with_reducible apply hP.updEntry
    | with_reducible apply hP.raiseError
    | with_reducible apply hP.setMeta
    | with_reducible apply hP.getGroup
    | with_reducible apply hP.getEntry
    | with_reducible apply hP.randomUuid
    | with_reducible apply hP.setNullDeref
    | with_reducible apply hP.setXmlError
    | with_reducible apply hP.setHeaderHash
    | with_reducible apply hP.setBinaryPool
    | with_reducible apply hP.addDeletedObject
    | refine snd_of_eq (by assumption) (hP.getGroup _ _ ?_)
    | refine snd_of_eq (by assumption) (hP.getEntry _ _ ?_)
    | refine snd_of_eq (by assumption) (hP.randomUuid _ _ ?_)
    | dsimp only
    | split)

theorem parseCustomDataItemChild_quiet {P : Reader → Prop} (hP : QuietLeaf P) {c : XmlElement} {s : ItemLocals × Reader}
    (h : P s.2) : P ((parseCustomDataItemChild c s).2) := by
  unfold parseCustomDataItemChild
  repeat' (first
    | assumption
    | with_reducible apply stable_ite
    | with_reducible apply stable_ite_snd
    | exact fun _ => rfl
    | with_reducible apply hP.updGroup
    | with_reducible apply hP.updEntry
    | with_reducible apply hP.raiseError
    | with_reducible apply hP.setMeta
    | with_reducible apply hP.getGroup
    | with_reducible apply hP.getEntry
    | with_reducible apply hP.randomUuid
    | with_reducible apply hP.setNullDeref
    | with_reducible apply hP.setXmlError
    | with_reducible apply hP.setHeaderHash
    | with_reducible apply hP.setBinaryPool
    | with_reducible apply hP.addDeletedObject
    | with_reducible apply readString_quiet hP
    | refine snd_of_eq (by assumption) (readString_quiet hP ?_)
    | refine snd_of_eq (by assumption) (hP.getGroup _ _ ?_)
    | refine snd_of_eq (by assumption) (hP.getEntry _ _ ?_)
    | refine snd_of_eq (by assumption) (hP.randomUuid _ _ ?_)
    | dsimp only
    | split)

theorem parseCustomDataItem_quiet {P : Reader → Prop} (hP : QuietLeaf P) {x : XmlElement} {st : Reader}
    (h : P st) : P (parseCustomDataItem x st) := by
  unfold parseCustomDataItem
  repeat' (first
    | assumption
    | with_reducible apply stable_ite
    | with_reducible apply stable_ite_snd
    | exact forEachChild_stable (fun _ _ hs => parseCustomDataItemChild_quiet hP hs) h
    | exact snd_of_eq (by assumption) (forEachChild_stable (fun _ _ hs => parseCustomDataItemChild_quiet hP hs) h)
    | exact fun _ => rfl
    | with_reducible apply hP.updGroup
    | with_reducible apply hP.updEntry
    | with_reducible apply hP.raiseError
    | with_reducible apply hP.setMeta
    | with_reducible apply hP.getGroup
    | with_reducible apply hP.getEntry
    | with_reducible apply hP.randomUuid
    | with_reducible apply hP.setNullDeref
    | with_reducible apply hP.setXmlError
    | with_reducible apply hP.setHeaderHash
    | with_reducible apply hP.setBinaryPool
    | with_reducible apply hP.addDeletedObject
    | refine snd_of_eq (by assumption) (hP.getGroup _ _ ?_)
    | refine snd_of_eq (by assumption) (hP.getEntry _ _ ?_)
    | refine snd_of_eq (by assumption) (hP.randomUuid _ _ ?_)
    | dsimp only
    | split)

theorem parseCustomDataChild_quiet {P : Reader → Prop} (hP : QuietLeaf P) {c : XmlElement} {s : Unit × Reader}
    (h : P s.2) : P ((parseCustomDataChild c s).2) := by
  unfold parseCustomDataChild
  repeat' (first
    | assumption
    | with_reducible apply stable_ite
    | with_reducible apply stable_ite_snd
    | exact fun _ => rfl
    | with_reducible apply hP.updGroup
    | with_reducible apply hP.updEntry
    | with_reducible apply hP.raiseError
    | with_reducible apply hP.setMeta
    | with_reducible apply hP.getGroup
    | with_reducible apply hP.getEntry
    | with_reducible apply hP.randomUuid
    | with_reducible apply hP.setNullDeref
    | with_reducible apply hP.setXmlError
    | with_reducible apply hP.setHeaderHash
    | with_reducible apply hP.setBinaryPool
    | with_reducible apply hP.addDeletedObject
    | with_reducible apply parseCustomDataItem_quiet hP
    | refine snd_of_eq (by assumption) (parseCustomDataItem_quiet hP ?_)
    | refine snd_of_eq (by assumption) (hP.getGroup _ _ ?_)
    | refine snd_of_eq (by assumption) (hP.getEntry _ _ ?_)
    | refine snd_of_eq (by assumption) (hP.randomUuid _ _ ?_)
    | dsimp only
    | split)

theorem parseCustomData_quiet {P : Reader → Prop} (hP : QuietLeaf P) {x : XmlElement} {st : Reader}
    (h : P st) : P (parseCustomData x st) := by
  unfold parseCustomData
  repeat' (first
    | assumption
    | with_reducible apply stable_ite
    | with_reducible apply stable_ite_snd
    | exact forEachChild_stable (fun _ _ hs => parseCustomDataChild_quiet hP hs) h
    | exact snd_of_eq (by assumption) (forEachChild_stable (fun _ _ hs => parseCustomDataChild_quiet hP hs) h)
    | exact fun _ => rfl
    | with_reducible apply hP.updGroup
    | with_reducible apply hP.updEntry
    | with_reducible apply hP.raiseError
    | with_reducible apply hP.setMeta
    | with_reducible apply hP.getGroup
    | with_reducible apply hP.getEntry
    | with_reducible apply hP.randomUuid
    | with_reducible apply hP.setNullDeref
    | with_reducible apply hP.setXmlError
    | with_reducible apply hP.setHeaderHash
    | with_reducible apply hP.setBinaryPool
    | with_reducible apply hP.addDeletedObject
    | refine snd_of_eq (by assumption) (hP.getGroup _ _ ?_)
    | refine snd_of_eq (by assumption) (hP.getEntry _ _ ?_)
    | refine snd_of_eq (by assumption) (hP.randomUuid _ _ ?_)
    | dsimp only
    | split)

theorem parseMetaChild_quiet {P : Reader → Prop} (hP : QuietLeaf P) {env : Env} {c : XmlElement} {st : Reader}
    (h : P st) : P (parseMetaChild env c st) := by
  unfold parseMetaChild
  repeat' (first
    | assumption
    | with_reducible apply stable_ite
    | with_reducible apply stable_ite_snd
    | exact fun _ => rfl
    | with_reducible apply hP.updGroup
    | with_reducible apply hP.updEntry
    | with_reducible apply hP.raiseError
    | with_reducible apply hP.setMeta
    | with_reducible apply hP.getGroup
    | with_reducible apply hP.getEntry
    | with_reducible apply hP.randomUuid
    | with_reducible apply hP.setNullDeref
    | with_reducible apply hP.setXmlError
    | with_reducible apply hP.setHeaderHash
    | with_reducible apply hP.setBinaryPool
    | with_reducible apply hP.addDeletedObject
    | with_reducible apply readString_quiet hP
    | refine snd_of_eq (by assumption) (readString_quiet hP ?_)
    | with_reducible apply readBinary_quiet hP
    | refine snd_of_eq (by assumption) (readBinary_quiet hP ?_)
    | with_reducible apply readDateTime_quiet hP
    | refine snd_of_eq (by assumption) (readDateTime_quiet hP ?_)
    | with_reducible apply readNumber_quiet hP
    | refine snd_of_eq (by assumption) (readNumber_quiet hP ?_)
    | with_reducible apply readColor_quiet hP
    | refine snd_of_eq (by assumption) (readColor_quiet hP ?_)
    | with_reducible apply readBool_quiet hP
    | refine snd_of_eq (by assumption) (readBool_quiet hP ?_)
    | with_reducible apply readUuid_quiet hP
    | refine snd_of_eq (by assumption) (readUuid_quiet hP ?_)
    | with_reducible apply parseMemoryProtection_quiet hP
    | refine snd_of_eq (by assumption) (parseMemoryProtection_quiet hP ?_)
    | with_reducible apply parseCustomIcons_quiet hP
    | refine snd_of_eq (by assumption) (parseCustomIcons_quiet hP ?_)
    | with_reducible apply parseBinaries_quiet hP
    | refine snd_of_eq (by assumption) (parseBinaries_quiet hP ?_)
    | with_reducible apply parseCustomData_quiet hP
    | refine snd_of_eq (by assumption) (parseCustomData_quiet hP ?_)
    | refine snd_of_eq (by assumption) (hP.getGroup _ _ ?_)
    | refine snd_of_eq (by assumption) (hP.getEntry _ _ ?_)
    | refine snd_of_eq (by assumption) (hP.randomUuid _ _ ?_)
    | dsimp only
    | split)

theorem parseMeta_quiet {P : Reader → Prop} (hP : QuietLeaf P) {env : Env} {x : XmlElement}
    {st : Reader} (h : P st) : P (parseMeta env x st) := by
  unfold parseMeta
  exact forEachChild_stable (fun _ _ hs => parseMetaChild_quiet hP hs) h

theorem parseTimesChild_quiet {P : Reader → Prop} (hP : QuietLeaf P) {env : Env} {c : XmlElement} {s : TimeInfo × Reader}
    (h : P s.2) : P ((parseTimesChild env c s).2) := by
  unfold parseTimesChild
  repeat' (first
    | assumption
    | with_reducible apply stable_ite
    | with_reducible apply stable_ite_snd
    | exact fun _ => rfl
    | with_reducible apply hP.updGroup
    | with_reducible apply hP.updEntry
    | with_reducible apply hP.raiseError
    | with_reducible apply hP.setMeta
    | with_reducible apply hP.getGroup
    | with_reducible apply hP.getEntry
    | with_reducible apply hP.randomUuid
    | with_reducible apply hP.setNullDeref
    | with_reducible apply hP.setXmlError
    | with_reducible apply hP.setHeaderHash
    | with_reducible apply hP.setBinaryPool
    | with_reducible apply hP.addDeletedObject
    | with_reducible apply readDateTime_quiet hP
    | refine snd_of_eq (by assumption) (readDateTime_quiet hP ?_)
    | with_reducible apply readBool_quiet hP
    | refine snd_of_eq (by assumption) (readBool_quiet hP ?_)
    | with_reducible apply readNumber_quiet hP
    | refine snd_of_eq (by assumption) (readNumber_quiet hP ?_)
    | refine snd_of_eq (by assumption) (hP.getGroup _ _ ?_)
    | refine snd_of_eq (by assumption) (hP.getEntry _ _ ?_)
    | refine snd_of_eq (by assumption) (hP.randomUuid _ _ ?_)
    | dsimp only
    | split)

theorem parseTimes_quiet {P : Reader → Prop} (hP : QuietLeaf P) {env : Env} {x : XmlElement} {st : Reader}
    (h : P st) : P ((parseTimes env x st).2) := by
  unfold parseTimes
  repeat' (first
    | assumption
    | with_reducible apply stable_ite
    | with_reducible apply stable_ite_snd
    | exact forEachChild_stable (fun _ _ hs => parseTimesChild_quiet hP hs) h
    | exact snd_of_eq (by assumption) (forEachChild_stable (fun _ _ hs => parseTimesChild_quiet hP hs) h)
    | exact fun _ => rfl
    | with_reducible apply hP.updGroup
    | with_reducible apply hP.updEntry
    | with_reducible apply hP.raiseError
    | with_reducible apply hP.setMeta
    | with_reducible apply hP.getGroup
    | with_reducible apply hP.getEntry
    | with_reducible apply hP.randomUuid
    | with_reducible apply hP.setNullDeref
    | with_reducible apply hP.setXmlError
    | with_reducible apply hP.setHeaderHash
    | with_reducible apply hP.setBinaryPool
    | with_reducible apply hP.addDeletedObject
    | refine snd_of_eq (by assumption) (hP.getGroup _ _ ?_)
    | refine snd_of_eq (by assumption) (hP.getEntry _ _ ?_)
    | refine snd_of_eq (by assumption) (hP.randomUuid _ _ ?_)
    | dsimp only
    | split)

theorem parseDeletedObjectChild_quiet {P : Reader → Prop} (hP : QuietLeaf P) {env : Env} {c : XmlElement} {s : DeletedObject × Reader}
    (h : P s.2) : P ((parseDeletedObjectChild env c s).2) := by
  unfold parseDeletedObjectChild
  repeat' (first
    | assumption
    | with_reducible apply stable_ite
    | with_reducible apply stable_ite_snd
    | exact fun _ => rfl
    | with_reducible apply hP.updGroup
    | with_reducible apply hP.updEntry
    | with_reducible apply hP.raiseError
    | with_reducible apply hP.setMeta
    | with_reducible apply hP.getGroup
    | with_reducible apply hP.getEntry
    | with_reducible apply hP.randomUuid
    | with_reducible apply hP.setNullDeref
    | with_reducible apply hP.setXmlError
    | with_reducible apply hP.setHeaderHash
    | with_reducible apply hP.setBinaryPool
    | with_reducible apply hP.addDeletedObject
    | with_reducible apply readUuid_quiet hP
    | refine snd_of_eq (by assumption) (readUuid_quiet hP ?_)
    | with_reducible apply readDateTime_quiet hP
    | refine snd_of_eq (by assumption) (readDateTime_quiet hP ?_)
    | refine snd_of_eq (by assumption) (hP.getGroup _ _ ?_)
    | refine snd_of_eq (by assumption) (hP.getEntry _ _ ?_)
    | refine snd_of_eq (by assumption) (hP.randomUuid _ _ ?_)
    | dsimp only
    | split)

theorem parseDeletedObject_quiet {P : Reader → Prop} (hP : QuietLeaf P) {env : Env} {x : XmlElement} {st : Reader}
    (h : P st) : P (parseDeletedObject env x st) := by
  unfold parseDeletedObject
  repeat' (first
    | assumption
    | with_reducible apply stable_ite
    | with_reducible apply stable_ite_snd
    | exact forEachChild_stable (fun _ _ hs => parseDeletedObjectChild_quiet hP hs) h
    | exact snd_of_eq (by assumption) (forEachChild_stable (fun _ _ hs => parseDeletedObjectChild_quiet hP hs) h)
    | exact fun _ => rfl
    | with_reducible apply hP.updGroup
    | with_reducible apply hP.updEntry
    | with_reducible apply hP.raiseError
    | with_reducible apply hP.setMeta
    | with_reducible apply hP.getGroup
    | with_reducible apply hP.getEntry
    | with_reducible apply hP.randomUuid
    | with_reducible apply hP.setNullDeref
    | with_reducible apply hP.setXmlError
    | with_reducible apply hP.setHeaderHash
    | with_reducible apply hP.setBinaryPool
    | with_reducible apply hP.addDeletedObject
    | refine snd_of_eq (by assumption) (hP.getGroup _ _ ?_)
    | refine snd_of_eq (by assumption) (hP.getEntry _ _ ?_)
    | refine snd_of_eq (by assumption) (hP.randomUuid _ _ ?_)
    | dsimp only
    | split)

theorem parseDeletedObjectsChild_quiet {P : Reader → Prop} (hP : QuietLeaf P) {env : Env} {c : XmlElement} {s : Unit × Reader}
    (h : P s.2) : P ((parseDeletedObjectsChild env c s).2) := by
  unfold parseDeletedObjectsChild
  repeat' (first
    | assumption
    | with_reducible apply stable_ite
    | with_reducible apply stable_ite_snd
    | exact fun _ => rfl
    | with_reducible apply hP.updGroup
    | with_reducible apply hP.updEntry
    | with_reducible apply hP.raiseError
    | with_reducible apply hP.setMeta
    | with_reducible apply hP.getGroup
    | with_reducible apply hP.getEntry
    | with_reducible apply hP.randomUuid
    | with_reducible apply hP.setNullDeref
    | with_reducible apply hP.setXmlError
    | with_reducible apply hP.setHeaderHash
    | with_reducible apply hP.setBinaryPool
    | with_reducible apply hP.addDeletedObject
    | with_reducible apply parseDeletedObject_quiet hP
    | refine snd_of_eq (by assumption) (parseDeletedObject_quiet hP ?_)
    | refine snd_of_eq (by assumption) (hP.getGroup _ _ ?_)
    | refine snd_of_eq (by assumption) (hP.getEntry _ _ ?_)
    | refine snd_of_eq (by assumption) (hP.randomUuid _ _ ?_)
    | dsimp only
    | split)

theorem parseDeletedObjects_quiet {P : Reader → Prop} (hP : QuietLeaf P) {env : Env} {x : XmlElement} {st : Reader}
    (h : P st) : P (parseDeletedObjects env x st) := by
  unfold parseDeletedObjects
  repeat' (first
    | assumption
    | with_reducible apply stable_ite
    | with_reducible apply stable_ite_snd
    | exact forEachChild_stable (fun _ _ hs => parseDeletedObjectsChild_quiet hP hs) h
    | exact snd_of_eq (by assumption) (forEachChild_stable (fun _ _ hs => parseDeletedObjectsChild_quiet hP hs) h)
    | exact fun _ => rfl
    | with_reducible apply hP.updGroup
    | with_reducible apply hP.updEntry
    | with_reducible apply hP.raiseError
    | with_reducible apply hP.setMeta
    | with_reducible apply hP.getGroup
    | with_reducible apply hP.getEntry
    | with_reducible apply hP.randomUuid
    | with_reducible apply hP.setNullDeref
    | with_reducible apply hP.setXmlError
    | with_reducible apply hP.setHeaderHash
    | with_reducible apply hP.setBinaryPool
    | with_reducible apply hP.addDeletedObject
    | refine snd_of_eq (by assumption) (hP.getGroup _ _ ?_)
    | refine snd_of_eq (by assumption) (hP.getEntry _ _ ?_)
    | refine snd_of_eq (by assumption) (hP.randomUuid _ _ ?_)
    | dsimp only
    | split)

theorem parseAutoTypeAssocChild_quiet {P : Reader → Prop} (hP : QuietLeaf P) {c : XmlElement} {s : AssocLocals × Reader}
    (h : P s.2) : P ((parseAutoTypeAssocChild c s).2) := by
  unfold parseAutoTypeAssocChild
  repeat' (first
    | assumption
    | with_reducible apply stable_ite
    | with_reducible apply stable_ite_snd
    | exact fun _ => rfl
    | with_reducible apply hP.updGroup
    | with_reducible apply hP.updEntry
    | with_reducible apply hP.raiseError
    | with_reducible apply hP.setMeta
    | with_reducible apply hP.getGroup
    | with_reducible apply hP.getEntry
    | with_reducible apply hP.randomUuid
    | with_reducible apply hP.setNullDeref
    | with_reducible apply hP.setXmlError
    | with_reducible apply hP.setHeaderHash
    | with_reducible apply hP.setBinaryPool
    | with_reducible apply hP.addDeletedObject
    | with_reducible apply readString_quiet hP
    | refine snd_of_eq (by assumption) (readString_quiet hP ?_)
    | refine snd_of_eq (by assumption) (hP.getGroup _ _ ?_)
    | refine snd_of_eq (by assumption) (hP.getEntry _ _ ?_)
    | refine snd_of_eq (by assumption) (hP.randomUuid _ _ ?_)
    | dsimp only
    | split)

theorem parseAutoTypeAssoc_quiet {P : Reader → Prop} (hP : QuietLeaf P) {entry : Nat} {x : XmlElement} {st : Reader}
    (h : P st) : P (parseAutoTypeAssoc entry x st) := by
  unfold parseAutoTypeAssoc
  repeat' (first
    | assumption
    | with_reducible apply stable_ite
    | with_reducible apply stable_ite_snd
    | exact forEachChild_stable (fun _ _ hs => parseAutoTypeAssocChild_quiet hP hs) h
    | exact snd_of_eq (by assumption) (forEachChild_stable (fun _ _ hs => parseAutoTypeAssocChild_quiet hP hs) h)
    | exact fun _ => rfl
    | with_reducible apply hP.updGroup
    | with_reducible apply hP.updEntry
    | with_reducible apply hP.raiseError
    | with_reducible apply hP.setMeta
    | with_reducible apply hP.getGroup
    | with_reducible apply hP.getEntry
    | with_reducible apply hP.randomUuid
    | with_reducible apply hP.setNullDeref
    | with_reducible apply hP.setXmlError
    | with_reducible apply hP.setHeaderHash
    | with_reducible apply hP.setBinaryPool
    | with_reducible apply hP.addDeletedObject
    | refine snd_of_eq (by assumption) (hP.getGroup _ _ ?_)
    | refine snd_of_eq (by assumption) (hP.getEntry _ _ ?_)
    | refine snd_of_eq (by assumption) (hP.randomUuid _ _ ?_)
    | dsimp only
    | split)

theorem parseAutoTypeChild_quiet {P : Reader → Prop} (hP : QuietLeaf P) {env : Env} {entry : Nat} {c : XmlElement} {s : Unit × Reader}
    (h : P s.2) : P ((parseAutoTypeChild env entry c s).2) := by
  unfold parseAutoTypeChild
  repeat' (first
    | assumption
    | with_reducible apply stable_ite
    | with_reducible apply stable_ite_snd
    | exact fun _ => rfl
    | with_reducible apply hP.updGroup
    | with_reducible apply hP.updEntry
    | with_reducible apply hP.raiseError
    | with_reducible apply hP.setMeta
    | with_reducible apply hP.getGroup
    | with_reducible apply hP.getEntry
    | with_reducible apply hP.randomUuid
    | with_reducible apply hP.setNullDeref
    | with_reducible apply hP.setXmlError
    | with_reducible apply hP.setHeaderHash
    | with_reducible apply hP.setBinaryPool
    | with_reducible apply hP.addDeletedObject
    | with_reducible apply readBool_quiet hP
    | refine snd_of_eq (by assumption) (readBool_quiet hP ?_)
    | with_reducible apply readNumber_quiet hP
    | refine snd_of_eq (by assumption) (readNumber_quiet hP ?_)
    | with_reducible apply readString_quiet hP
    | refine snd_of_eq (by assumption) (readString_quiet hP ?_)
    | with_reducible apply parseAutoTypeAssoc_quiet hP
    | refine snd_of_eq (by assumption) (parseAutoTypeAssoc_quiet hP ?_)
    | refine snd_of_eq (by assumption) (hP.getGroup _ _ ?_)
    | refine snd_of_eq (by assumption) (hP.getEntry _ _ ?_)
    | refine snd_of_eq (by assumption) (hP.randomUuid _ _ ?_)
    | dsimp only
    | split)

theorem parseAutoType_quiet {P : Reader → Prop} (hP : QuietLeaf P) {env : Env} {entry : Nat} {x : XmlElement} {st : Reader}
    (h : P st) : P (parseAutoType env entry x st) := by
  unfold parseAutoType
  repeat' (first
    | assumption
    | with_reducible apply stable_ite
    | with_reducible apply stable_ite_snd
    | exact forEachChild_stable (fun _ _ hs => parseAutoTypeChild_quiet hP hs) h
    | exact snd_of_eq (by assumption) (forEachChild_stable (fun _ _ hs => parseAutoTypeChild_quiet hP hs) h)
    | exact fun _ => rfl
    | with_reducible apply hP.updGroup
    | with_reducible apply hP.updEntry
    | with_reducible apply hP.raiseError
    | with_reducible apply hP.setMeta
    | with_reducible apply hP.getGroup
    | with_reducible apply hP.getEntry
    | with_reducible apply hP.randomUuid
    | with_reducible apply hP.setNullDeref
    | with_reducible apply hP.setXmlError
    | with_reducible apply hP.setHeaderHash
    | with_reducible apply hP.setBinaryPool
    | with_reducible apply hP.addDeletedObject
    | refine snd_of_eq (by assumption) (hP.getGroup _ _ ?_)
    | refine snd_of_eq (by assumption) (hP.getEntry _ _ ?_)
    | refine snd_of_eq (by assumption) (hP.randomUuid _ _ ?_)
    | dsimp only
    | split)

theorem parseGroupField_quiet {P : Reader → Prop} (hP : QuietLeaf P) {env : Env} {group : Nat} {c : XmlElement} {st : Reader}
    (h : P st) : P (parseGroupField env group c st) := by
  unfold parseGroupField
  repeat' (first
    | assumption
    | with_reducible apply stable_ite
    | with_reducible apply stable_ite_snd
    | exact fun _ => rfl
    | with_reducible apply hP.updGroup
    | with_reducible apply hP.updEntry
    | with_reducible apply hP.raiseError
    | with_reducible apply hP.setMeta
    | with_reducible apply hP.getGroup
    | with_reducible apply hP.getEntry
    | with_reducible apply hP.randomUuid
    | with_reducible apply hP.setNullDeref
    | with_reducible apply hP.setXmlError
    | with_reducible apply hP.setHeaderHash
    | with_reducible apply hP.setBinaryPool
    | with_reducible apply hP.addDeletedObject
    | with_reducible apply readUuid_quiet hP
    | refine snd_of_eq (by assumption) (readUuid_quiet hP ?_)
    | with_reducible apply readString_quiet hP
    | refine snd_of_eq (by assumption) (readString_quiet hP ?_)
    | with_reducible apply readNumber_quiet hP
    | refine snd_of_eq (by assumption) (readNumber_quiet hP ?_)
    | with_reducible apply parseTimes_quiet hP
    | refine snd_of_eq (by assumption) (parseTimes_quiet hP ?_)
    | with_reducible apply readBool_quiet hP
    | refine snd_of_eq (by assumption) (readBool_quiet hP ?_)
    | refine snd_of_eq (by assumption) (hP.getGroup _ _ ?_)
    | refine snd_of_eq (by assumption) (hP.getEntry _ _ ?_)
    | refine snd_of_eq (by assumption) (hP.randomUuid _ _ ?_)
    | dsimp only
    | split)

theorem parseEntryField_quiet {P : Reader → Prop} (hP : QuietLeaf P) {env : Env} {entry : Nat} {c : XmlElement} {s : List (String × String) × Reader}
    (hS : c.name ≠ "String") (hB : c.name ≠ "Binary")
    (h : P s.2) : P ((parseEntryField env entry c s).2) := by
  unfold parseEntryField
  simp only [hS, hB, if_false]
  repeat' (first
    | assumption
    | with_reducible apply stable_ite
    | with_reducible apply stable_ite_snd
    | contradiction
    | exact fun _ => rfl
    | with_reducible apply hP.updGroup
    | with_reducible apply hP.updEntry
    | with_reducible apply hP.raiseError
    | with_reducible apply hP.setMeta
    | with_reducible apply hP.getGroup
    | with_reducible apply hP.getEntry
    | with_reducible apply hP.randomUuid
    | with_reducible apply hP.setNullDeref
    | with_reducible apply hP.setXmlError
    | with_reducible apply hP.setHeaderHash
    | with_reducible apply hP.setBinaryPool
    | with_reducible apply hP.addDeletedObject
    | with_reducible apply readUuid_quiet hP
    | refine snd_of_eq (by assumption) (readUuid_quiet hP ?_)
    | with_reducible apply readString_quiet hP
    | refine snd_of_eq (by assumption) (readString_quiet hP ?_)
    | with_reducible apply readNumber_quiet hP
    | refine snd_of_eq (by assumption) (readNumber_quiet hP ?_)
    | with_reducible apply readColor_quiet hP
    | refine snd_of_eq (by assumption) (readColor_quiet hP ?_)
    | with_reducible apply parseTimes_quiet hP
    | refine snd_of_eq (by assumption) (parseTimes_quiet hP ?_)
    | with_reducible apply parseAutoType_quiet hP
    | refine snd_of_eq (by assumption) (parseAutoType_quiet hP ?_)
    | refine snd_of_eq (by assumption) (hP.getGroup _ _ ?_)
    | refine snd_of_eq (by assumption) (hP.getEntry _ _ ?_)
    | refine snd_of_eq (by assumption) (hP.randomUuid _ _ ?_)
    | dsimp only
    | split)

theorem ensureGroupUuid_quiet {P : Reader → Prop} (hP : QuietLeaf P) {env : Env} {group : Nat} {st : Reader}
    (h : P st) : P (ensureGroupUuid env group st) := by
  unfold ensureGroupUuid
  repeat' (first
    | assumption
    | with_reducible apply stable_ite
    | with_reducible apply stable_ite_snd
    | exact fun _ => rfl
    | with_reducible apply hP.updGroup
    | with_reducible apply hP.updEntry
    | with_reducible apply hP.raiseError
    | with_reducible apply hP.setMeta
    | with_reducible apply hP.getGroup
    | with_reducible apply hP.getEntry
    | with_reducible apply hP.randomUuid
    | with_reducible apply hP.setNullDeref
    | with_reducible apply hP.setXmlError
    | with_reducible apply hP.setHeaderHash
    | with_reducible apply hP.setBinaryPool
    | with_reducible apply hP.addDeletedObject
    | refine snd_of_eq (by assumption) (hP.getGroup _ _ ?_)
    | refine snd_of_eq (by assumption) (hP.getEntry _ _ ?_)
    | refine snd_of_eq (by assumption) (hP.randomUuid _ _ ?_)
    | dsimp only
    | split)

theorem ensureEntryUuid_quiet {P : Reader → Prop} (hP : QuietLeaf P) {env : Env} {entry : Nat} {st : Reader}
    (h : P st) : P (ensureEntryUuid env entry st) := by
  unfold ensureEntryUuid
  repeat' (first
    | assumption
    | with_reducible apply stable_ite
    | with_reducible apply stable_ite_snd
    | exact fun _ => rfl
    | with_reducible apply hP.updGroup
    | with_reducible apply hP.updEntry
    | with_reducible apply hP.raiseError
    | with_reducible apply hP.setMeta
    | with_reducible apply hP.getGroup
    | with_reducible apply hP.getEntry
    | with_reducible apply hP.randomUuid
    | with_reducible apply hP.setNullDeref
    | with_reducible apply hP.setXmlError
    | with_reducible apply hP.setHeaderHash
    | with_reducible apply hP.setBinaryPool
    | with_reducible apply hP.addDeletedObject
    | refine snd_of_eq (by assumption) (hP.getGroup _ _ ?_)
    | refine snd_of_eq (by assumption) (hP.getEntry _ _ ?_)
    | refine snd_of_eq (by assumption) (hP.randomUuid _ _ ?_)
    | dsimp only
    | split)

theorem addHistoryItems_quiet {P : Reader → Prop} (hP : QuietLeaf P) {entry : Nat}
    {items : List Nat} {st : Reader} (h : P st) : P (addHistoryItems entry items st) := by
  induction items generalizing st with
  | nil => exact h
  | cons x rest ih =>
    unfold addHistoryItems
    apply ih
    refine hP.updEntry _ _ _ (fun _ => rfl) ?_
    repeat' (first
      | assumption
      | exact fun _ => rfl
      | with_reducible apply stable_ite
      | with_reducible apply hP.raiseError
      | with_reducible apply hP.updEntry)

theorem Reader.endElement_quiet {P : Reader → Prop} (hP : Quiet P) {st : Reader}
    (h : P st) : P (st.endElement) := by
  unfold Reader.endElement
  repeat' (first
    | assumption
    | with_reducible apply stable_ite
    | with_reducible apply stable_ite_snd
    | exact fun _ => rfl
    | with_reducible apply hP.toQuietLeaf.updGroup
    | with_reducible apply hP.toQuietLeaf.updEntry
    | with_reducible apply hP.toQuietLeaf.raiseError
    | with_reducible apply hP.toQuietLeaf.setMeta
    | with_reducible apply hP.toQuietLeaf.getGroup
    | with_reducible apply hP.toQuietLeaf.getEntry
    | with_reducible apply hP.toQuietLeaf.randomUuid
    | with_reducible apply hP.toQuietLeaf.setNullDeref
    | with_reducible apply hP.toQuietLeaf.setXmlError
    | with_reducible apply hP.toQuietLeaf.setHeaderHash
    | with_reducible apply hP.toQuietLeaf.setBinaryPool
    | with_reducible apply hP.toQuietLeaf.addDeletedObject
    | with_reducible apply hP.setPending
    | with_reducible apply hP.newGroup
    | with_reducible apply hP.newEntry
    | with_reducible apply hP.setParent
    | with_reducible apply hP.setGroup
    | with_reducible apply hP.setRootGroup
    | with_reducible apply hP.addBinaryRefs
    | refine snd_of_eq (by assumption) (hP.toQuietLeaf.getGroup _ _ ?_)
    | refine snd_of_eq (by assumption) (hP.toQuietLeaf.getEntry _ _ ?_)
    | refine snd_of_eq (by assumption) (hP.toQuietLeaf.randomUuid _ _ ?_)
    | refine foldl_stable (fun _ _ hs => hP.setParent _ _ _ hs) ?_
    | refine foldl_stable (fun _ _ hs => hP.setGroup _ _ _ hs) ?_
    | refine snd_of_eq (by assumption) (hP.newGroup _ ?_)
    | refine snd_of_eq (by assumption) (hP.newEntry _ ?_)
    | dsimp only
    | split)

theorem skipCurrentElement_quiet {P : Reader → Prop} (hP : Quiet P) {st : Reader}
    (h : P st) : P (skipCurrentElement st) := by
  unfold skipCurrentElement
  repeat' (first
    | assumption
    | with_reducible apply stable_ite
    | with_reducible apply stable_ite_snd
    | exact fun _ => rfl
    | with_reducible apply hP.toQuietLeaf.updGroup
    | with_reducible apply hP.toQuietLeaf.updEntry
    | with_reducible apply hP.toQuietLeaf.raiseError
    | with_reducible apply hP.toQuietLeaf.setMeta
    | with_reducible apply hP.toQuietLeaf.getGroup
    | with_reducible apply hP.toQuietLeaf.getEntry
    | with_reducible apply hP.toQuietLeaf.randomUuid
    | with_reducible apply hP.toQuietLeaf.setNullDeref
    | with_reducible apply hP.toQuietLeaf.setXmlError
    | with_reducible apply hP.toQuietLeaf.setHeaderHash
    | with_reducible apply hP.toQuietLeaf.setBinaryPool
    | with_reducible apply hP.toQuietLeaf.addDeletedObject
    | with_reducible apply hP.setPending
    | with_reducible apply hP.newGroup
    | with_reducible apply hP.newEntry
    | with_reducible apply hP.setParent
    | with_reducible apply hP.setGroup
    | with_reducible apply hP.setRootGroup
    | with_reducible apply hP.addBinaryRefs
    | with_reducible apply Reader.endElement_quiet hP
    | refine snd_of_eq (by assumption) (Reader.endElement_quiet hP ?_)
    | refine snd_of_eq (by assumption) (hP.toQuietLeaf.getGroup _ _ ?_)
    | refine snd_of_eq (by assumption) (hP.toQuietLeaf.getEntry _ _ ?_)
    | refine snd_of_eq (by assumption) (hP.toQuietLeaf.randomUuid _ _ ?_)
    | refine foldl_stable (fun _ _ hs => hP.setParent _ _ _ hs) ?_
    | refine foldl_stable (fun _ _ hs => hP.setGroup _ _ _ hs) ?_
    | refine snd_of_eq (by assumption) (hP.newGroup _ ?_)
    | refine snd_of_eq (by assumption) (hP.newEntry _ ?_)
    | dsimp only
    | split)

theorem readNextStartElement_quiet {P : Reader → Prop} (hP : Quiet P) {st : Reader}
    (h : P st) : P ((readNextStartElement st).2) := by
  unfold readNextStartElement
  repeat' (first
    | assumption
    | with_reducible apply stable_ite
    | with_reducible apply stable_ite_snd
    | exact fun _ => rfl
    | with_reducible apply hP.toQuietLeaf.updGroup
    | with_reducible apply hP.toQuietLeaf.updEntry
    | with_reducible apply hP.toQuietLeaf.raiseError
    | with_reducible apply hP.toQuietLeaf.setMeta
    | with_reducible apply hP.toQuietLeaf.getGroup
    | with_reducible apply hP.toQuietLeaf.getEntry
    | with_reducible apply hP.toQuietLeaf.randomUuid
    | with_reducible apply hP.toQuietLeaf.setNullDeref
    | with_reducible apply hP.toQuietLeaf.setXmlError
    | with_reducible apply hP.toQuietLeaf.setHeaderHash
    | with_reducible apply hP.toQuietLeaf.setBinaryPool
    | with_reducible apply hP.toQuietLeaf.addDeletedObject
    | with_reducible apply hP.setPending
    | with_reducible apply hP.newGroup
    | with_reducible apply hP.newEntry
    | with_reducible apply hP.setParent
    | with_reducible apply hP.setGroup
    | with_reducible apply hP.setRootGroup
    | with_reducible apply hP.addBinaryRefs
    | refine snd_of_eq (by assumption) (hP.toQuietLeaf.getGroup _ _ ?_)
    | refine snd_of_eq (by assumption) (hP.toQuietLeaf.getEntry _ _ ?_)
    | refine snd_of_eq (by assumption) (hP.toQuietLeaf.randomUuid _ _ ?_)
    | refine foldl_stable (fun _ _ hs => hP.setParent _ _ _ hs) ?_
    | refine foldl_stable (fun _ _ hs => hP.setGroup _ _ _ hs) ?_
    | refine snd_of_eq (by assumption) (hP.newGroup _ ?_)
    | refine snd_of_eq (by assumption) (hP.newEntry _ ?_)
    | dsimp only
    | split)

theorem mergeGroup_quiet {P : Reader → Prop} (hP : Quiet P) {tmpGroup : Nat} {st : Reader}
    (h : P st) : P ((mergeGroup tmpGroup st).2) := by
  unfold mergeGroup
  repeat' (first
    | assumption
    | with_reducible apply stable_ite
    | with_reducible apply stable_ite_snd
    | refine hP.defGroup _ _ _ (by simpa using getGroup_registered (by assumption)) ?_
    | exact fun _ => rfl
    | with_reducible apply hP.toQuietLeaf.updGroup
    | with_reducible apply hP.toQuietLeaf.updEntry
    | with_reducible apply hP.toQuietLeaf.raiseError
    | with_reducible apply hP.toQuietLeaf.setMeta
    | with_reducible apply hP.toQuietLeaf.getGroup
    | with_reducible apply hP.toQuietLeaf.getEntry
    | with_reducible apply hP.toQuietLeaf.randomUuid
    | with_reducible apply hP.toQuietLeaf.setNullDeref
    | with_reducible apply hP.toQuietLeaf.setXmlError
    | with_reducible apply hP.toQuietLeaf.setHeaderHash
    | with_reducible apply hP.toQuietLeaf.setBinaryPool
    | with_reducible apply hP.toQuietLeaf.addDeletedObject
    | with_reducible apply hP.setPending
    | with_reducible apply hP.newGroup
    | with_reducible apply hP.newEntry
    | with_reducible apply hP.setParent
    | with_reducible apply hP.setGroup
    | with_reducible apply hP.setRootGroup
    | with_reducible apply hP.addBinaryRefs
    | with_reducible apply Reader.deleteGroup_quiet hP.toQuietLeaf
    | refine snd_of_eq (by assumption) (Reader.deleteGroup_quiet hP.toQuietLeaf ?_)
    | refine snd_of_eq (by assumption) (hP.toQuietLeaf.getGroup _ _ ?_)
    | refine snd_of_eq (by assumption) (hP.toQuietLeaf.getEntry _ _ ?_)
    | refine snd_of_eq (by assumption) (hP.toQuietLeaf.randomUuid _ _ ?_)
    | refine foldl_stable (fun _ _ hs => hP.setParent _ _ _ hs) ?_
    | refine foldl_stable (fun _ _ hs => hP.setGroup _ _ _ hs) ?_
    | refine snd_of_eq (by assumption) (hP.newGroup _ ?_)
    | refine snd_of_eq (by assumption) (hP.newEntry _ ?_)
    | dsimp only
    | split)

theorem parseGroupFinish_quiet {P : Reader → Prop} (hP : Quiet P) {env : Env} {l : GroupLocals} {st : Reader}
    (h : P st) : P ((parseGroupFinish env l st).2) := by
  unfold parseGroupFinish
  repeat' (first
    | assumption
    | with_reducible apply stable_ite
    | with_reducible apply stable_ite_snd
    | exact fun _ => rfl
    | with_reducible apply hP.toQuietLeaf.updGroup
    | with_reducible apply hP.toQuietLeaf.updEntry
    | with_reducible apply hP.toQuietLeaf.raiseError
    | with_reducible apply hP.toQuietLeaf.setMeta
    | with_reducible apply hP.toQuietLeaf.getGroup
    | with_reducible apply hP.toQuietLeaf.getEntry
    | with_reducible apply hP.toQuietLeaf.randomUuid
    | with_reducible apply hP.toQuietLeaf.setNullDeref
    | with_reducible apply hP.toQuietLeaf.setXmlError
    | with_reducible apply hP.toQuietLeaf.setHeaderHash
    | with_reducible apply hP.toQuietLeaf.setBinaryPool
    | with_reducible apply hP.toQuietLeaf.addDeletedObject
    | with_reducible apply hP.setPending
    | with_reducible apply hP.newGroup
    | with_reducible apply hP.newEntry
    | with_reducible apply hP.setParent
    | with_reducible apply hP.setGroup
    | with_reducible apply hP.setRootGroup
    | with_reducible apply hP.addBinaryRefs
    | with_reducible apply ensureGroupUuid_quiet hP.toQuietLeaf
    | refine snd_of_eq (by assumption) (ensureGroupUuid_quiet hP.toQuietLeaf ?_)
    | with_reducible apply mergeGroup_quiet hP
    | refine snd_of_eq (by assumption) (mergeGroup_quiet hP ?_)
    | refine snd_of_eq (by assumption) (hP.toQuietLeaf.getGroup _ _ ?_)
    | refine snd_of_eq (by assumption) (hP.toQuietLeaf.getEntry _ _ ?_)
    | refine snd_of_eq (by assumption) (hP.toQuietLeaf.randomUuid _ _ ?_)
    | refine foldl_stable (fun _ _ hs => hP.setParent _ _ _ hs) ?_
    | refine foldl_stable (fun _ _ hs => hP.setGroup _ _ _ hs) ?_
    | refine snd_of_eq (by assumption) (hP.newGroup _ ?_)
    | refine snd_of_eq (by assumption) (hP.newEntry _ ?_)
    | dsimp only
    | split)

theorem mergeEntry_quiet {P : Reader → Prop} (hP : Quiet P) {history : Bool} {tmpEntry : Nat} {st : Reader}
    (h : P st) : P ((mergeEntry history tmpEntry st).2) := by
  unfold mergeEntry
  repeat' (first
    | assumption
    | with_reducible apply stable_ite
    | with_reducible apply stable_ite_snd
    | refine hP.defEntry _ _ _ (by simpa using getEntry_registered (by assumption)) ?_
    | exact fun _ => rfl
    | with_reducible apply hP.toQuietLeaf.updGroup
    | with_reducible apply hP.toQuietLeaf.updEntry
    | with_reducible apply hP.toQuietLeaf.raiseError
    | with_reducible apply hP.toQuietLeaf.setMeta
    | with_reducible apply hP.toQuietLeaf.getGroup
    | with_reducible apply hP.toQuietLeaf.getEntry
    | with_reducible apply hP.toQuietLeaf.randomUuid
    | with_reducible apply hP.toQuietLeaf.setNullDeref
    | with_reducible apply hP.toQuietLeaf.setXmlError
    | with_reducible apply hP.toQuietLeaf.setHeaderHash
    | with_reducible apply hP.toQuietLeaf.setBinaryPool
    | with_reducible apply hP.toQuietLeaf.addDeletedObject
    | with_reducible apply hP.setPending
    | with_reducible apply hP.newGroup
    | with_reducible apply hP.newEntry
    | with_reducible apply hP.setParent
    | with_reducible apply hP.setGroup
    | with_reducible apply hP.setRootGroup
    | with_reducible apply hP.addBinaryRefs
    | with_reducible apply Reader.deleteEntry_quiet hP.toQuietLeaf
    | refine snd_of_eq (by assumption) (Reader.deleteEntry_quiet hP.toQuietLeaf ?_)
    | refine snd_of_eq (by assumption) (hP.toQuietLeaf.getGroup _ _ ?_)
    | refine snd_of_eq (by assumption) (hP.toQuietLeaf.getEntry _ _ ?_)
    | refine snd_of_eq (by assumption) (hP.toQuietLeaf.randomUuid _ _ ?_)
    | refine foldl_stable (fun _ _ hs => hP.setParent _ _ _ hs) ?_
    | refine foldl_stable (fun _ _ hs => hP.setGroup _ _ _ hs) ?_
    | refine snd_of_eq (by assumption) (hP.newGroup _ ?_)
    | refine snd_of_eq (by assumption) (hP.newEntry _ ?_)
    | dsimp only
    | split)

theorem parseEntryFinish_quiet {P : Reader → Prop} (hP : Quiet P) {env : Env} {history : Bool} {l : EntryLocals} {st : Reader}
    (h : P st) : P ((parseEntryFinish env history l st).2) := by
  unfold parseEntryFinish
  repeat' (first
    | assumption
    | with_reducible apply stable_ite
    | with_reducible apply stable_ite_snd
    | exact fun _ => rfl
    | with_reducible apply hP.toQuietLeaf.updGroup
    | with_reducible apply hP.toQuietLeaf.updEntry
    | with_reducible apply hP.toQuietLeaf.raiseError
    | with_reducible apply hP.toQuietLeaf.setMeta
    | with_reducible apply hP.toQuietLeaf.getGroup
    | with_reducible apply hP.toQuietLeaf.getEntry
    | with_reducible apply hP.toQuietLeaf.randomUuid
    | with_reducible apply hP.toQuietLeaf.setNullDeref
    | with_reducible apply hP.toQuietLeaf.setXmlError
    | with_reducible apply hP.toQuietLeaf.setHeaderHash
    | with_reducible apply hP.toQuietLeaf.setBinaryPool
    | with_reducible apply hP.toQuietLeaf.addDeletedObject
    | with_reducible apply hP.setPending
    | with_reducible apply hP.newGroup
    | with_reducible apply hP.newEntry
    | with_reducible apply hP.setParent
    | with_reducible apply hP.setGroup
    | with_reducible apply hP.setRootGroup
    | with_reducible apply hP.addBinaryRefs
    | with_reducible apply ensureEntryUuid_quiet hP.toQuietLeaf
    | refine snd_of_eq (by assumption) (ensureEntryUuid_quiet hP.toQuietLeaf ?_)
    | with_reducible apply mergeEntry_quiet hP
    | refine snd_of_eq (by assumption) (mergeEntry_quiet hP ?_)
    | with_reducible apply addHistoryItems_quiet hP.toQuietLeaf
    | refine snd_of_eq (by assumption) (addHistoryItems_quiet hP.toQuietLeaf ?_)
    | refine snd_of_eq (by assumption) (hP.toQuietLeaf.getGroup _ _ ?_)
    | refine snd_of_eq (by assumption) (hP.toQuietLeaf.getEntry _ _ ?_)
    | refine snd_of_eq (by assumption) (hP.toQuietLeaf.randomUuid _ _ ?_)
    | refine foldl_stable (fun _ _ hs => hP.setParent _ _ _ hs) ?_
    | refine foldl_stable (fun _ _ hs => hP.setGroup _ _ _ hs) ?_
    | refine snd_of_eq (by assumption) (hP.newGroup _ ?_)
    | refine snd_of_eq (by assumption) (hP.newEntry _ ?_)
    | dsimp only
    | split)

theorem resolveBinaries_quiet {P : Reader → Prop} (hP : QuietLeaf P)
    {items : List (String × Nat × String)} {st : Reader} (h : P st) :
    P (resolveBinaries items st) := by
  induction items generalizing st with
  | nil => exact h
  | cons x rest ih =>
    obtain ⟨id, entry, name⟩ := x
    unfold resolveBinaries
    apply ih
    refine hP.updEntry _ _ _ (fun _ => rfl) ?_
    split
    · exact h
    · exact hP.setBinaryPool _ _ h

theorem enableUpdates_quiet {P : Reader → Prop} (hP : QuietLeaf P) {st : Reader} (h : P st) :
    P (enableUpdates st) := by
  unfold enableUpdates
  refine foldl_stable (fun s kv hs => ?_) (foldl_stable (fun s kv hs => ?_) (hP.setMeta _ _ h))
  · exact foldl_stable (fun t a ht => hP.updEntry _ _ _ (fun _ => by rfl) ht) (hP.updEntry _ _ _ (fun _ => by rfl) hs)
  · exact hP.updGroup _ _ _ (fun _ => by rfl) hs

theorem readDatabaseFinish_quiet {P : Reader → Prop} (hP : QuietLeaf P) {env : Env} {b : Bool}
    {st : Reader} (h : P st) : P (readDatabaseFinish env b st) := by
  unfold readDatabaseFinish
  split
  · exact hP.raiseError _ _ h
  · exact enableUpdates_quiet hP (resolveBinaries_quiet hP h)

/-! ### C24: the calls of the keystream cipher -/

/-- The cipher log and the state of the cipher are kept by every state change
but the call of the cipher. -/
theorem quiet_cipher (L : List QByteArray) (R : Option QByteArray) :
    Quiet (fun t => t.cipherLog = L ∧ t.m_randomStream = R) := by
  refine ⟨⟨?_, ?_, ?_, ?_, ?_, ?_, ?_, ?_, ?_, ?_, ?_, ?_⟩, ?_, ?_, ?_, ?_, ?_, ?_, ?_, ?_, ?_⟩ <;>
    intros <;> simp_all [Reader.raiseError, Reader.setMeta, Reader.newGroup,
      Reader.newEntry, Reader.randomUuid]

/-- What a quiet step keeps, in the form used along a decode. -/
theorem quiet_keeps {s t : Reader}
    (h : t.cipherLog = s.cipherLog ∧ t.m_randomStream = s.m_randomStream) (X : List QByteArray)
    (hs : s.m_randomStream.isSome = true) (hX : X = []) :
    t.cipherLog = s.cipherLog ++ X ∧ t.m_randomStream.isSome = true := by
  subst hX
  rw [h.1, h.2, List.append_nil]
  exact ⟨rfl, hs⟩

/-- The loop over the child elements of an element, when every child adds its
ciphertexts to the log: the loop that ends without XML error adds those of all
children, in order. -/
theorem forEachChild_log {σ : Type} (body : XmlElement → σ × Reader → σ × Reader)
    (f : XmlElement → List QByteArray)
    (hbody : ∀ c s, s.2.xmlError = false → s.2.m_randomStream.isSome = true →
      (body c s).2.cipherLog = s.2.cipherLog ++ f c ∧
        (body c s).2.m_randomStream.isSome = true)
    (xs : List XmlElement) (s : σ × Reader)
    (hx : (forEachChild body xs s).2.xmlError = false)
    (hs : s.2.m_randomStream.isSome = true) :
    (forEachChild body xs s).2.cipherLog = s.2.cipherLog ++ xs.flatMap f ∧
      (forEachChild body xs s).2.m_randomStream.isSome = true := by
  induction xs generalizing s with
  | nil => exact ⟨by simp [forEachChild], hs⟩
  | cons x rest ih =>
    unfold forEachChild at hx ⊢
    by_cases hc : s.2.xmlError = true
    · rw [if_pos hc] at hx
      rw [hc] at hx
      cases hx
    · rw [if_neg hc] at hx ⊢
      obtain ⟨b1, b2⟩ := hbody x s (by simpa using hc) hs
      obtain ⟨i1, i2⟩ := ih (body x s) hx b2
      refine ⟨?_, i2⟩
      rw [i1, b1, List.flatMap_cons, List.append_assoc]

/-- The body of the loop of `parseEntryString` hands to the cipher the
ciphertext of a `Value` element marked `Protected="True"` with text, and
nothing else. -/
theorem parseEntryStringChild_log (env : Env) (c : XmlElement) (s : StringLocals × Reader)
    (hx : s.2.xmlError = false) (hs : s.2.m_randomStream.isSome = true) :
    (parseEntryStringChild env c s).2.cipherLog =
        s.2.cipherLog ++ Spec.stringValueCiphertext env c ∧
      (parseEntryStringChild env c s).2.m_randomStream.isSome = true := by
  unfold parseEntryStringChild Spec.stringValueCiphertext
  by_cases hk : c.name = "Key"
  · rw [if_pos hk, if_neg (by rw [hk]; simp)]
    exact quiet_keeps (readString_quiet (quiet_cipher _ _).toQuietLeaf ⟨rfl, rfl⟩) _ hs rfl
  · rw [if_neg hk]
    by_cases hv : c.name = "Value"
    · rw [if_pos hv]
      obtain ⟨cs, hcs⟩ := Option.isSome_iff_exists.mp hs
      have q := readString_quiet (x := c) (quiet_cipher s.2.cipherLog s.2.m_randomStream).toQuietLeaf
        ⟨rfl, rfl⟩
      have hv1 : (readString c s.2).1 = c.text := by
        unfold readString
        rw [hx]
        simp only [Bool.false_eq_true, if_false]
        split <;> rfl
      unfold parseEntryStringValue
      simp only [hv1, q.2, hcs]
      by_cases hp : c.attr "Protected" = "True"
      · by_cases ht : c.text = ""
        · have he : c.text.isEmpty = true := by
            rw [ht]
            rfl
          simp only [he]
          simp [hp, ht, q.1, q.2, hcs]
        · have ht2 : c.text.isEmpty = false := by
            cases h : c.text.isEmpty with
            | false => rfl
            | true => exact absurd ((String.isEmpty_iff c.text).mp h) ht
          simp only [hp, ht2, decide_True, Bool.not_false, Bool.and_self, if_true]
          cases hproc : env.process cs (env.fromBase64 c.text) with
          | mk o cs2 =>
            cases o <;>
              simp [Reader.cipherProcess, hproc, hv, hp, ht, q.1, Reader.raiseError]
      · simp [hp, q.1, q.2, hcs]
    · rw [if_neg hv]
      simp [hv, skipChild, hs]

theorem readString_text (c : XmlElement) (st : Reader) (hx : st.xmlError = false) :
    (readString c st).1 = c.text := by
  unfold readString
  rw [hx]
  simp only [Bool.false_eq_true, if_false]
  split <;> rfl

/-- The body of the loop of `parseEntryBinary` hands to the cipher the decoded
bytes of an inline `Value` element marked `Protected="True"` when there are any,
and nothing else. -/
theorem parseEntryBinaryChild_log (env : Env) (c : XmlElement) (s : BinaryLocals × Reader)
    (hx : s.2.xmlError = false) (hs : s.2.m_randomStream.isSome = true) :
    (parseEntryBinaryChild env c s).2.cipherLog =
        s.2.cipherLog ++ Spec.binaryValueCiphertext env c ∧
      (parseEntryBinaryChild env c s).2.m_randomStream.isSome = true := by
  unfold parseEntryBinaryChild Spec.binaryValueCiphertext
  by_cases hk : c.name = "Key"
  · rw [if_pos hk, if_neg (by rw [hk]; simp)]
    exact quiet_keeps (readString_quiet (quiet_cipher _ _).toQuietLeaf ⟨rfl, rfl⟩) _ hs rfl
  · rw [if_neg hk]
    by_cases hv : c.name = "Value"
    · rw [if_pos hv]
      obtain ⟨cs, hcs⟩ := Option.isSome_iff_exists.mp hs
      have q := readString_cipher c s.2
      have hv1 := readString_text c s.2 hx
      unfold parseEntryBinaryValue
      by_cases hr : c.hasAttribute "Ref" = true
      · simp [hr, skipChild, hs]
      · rw [if_neg hr]
        unfold readBinary
        simp only [hv1, q.1, hcs]
        by_cases hp : c.attr "Protected" = "True"
        · have hp2 : c.hasAttribute "Protected" = true := hasAttribute_of_attr hp (by decide)
          cases hb : env.fromBase64 c.text with
          | nil => simp [hp, hp2, hr, q.2, q.1, hcs]
          | cons b0 bs =>
            cases hproc : env.process cs (b0 :: bs) with
            | mk o cs2 =>
              cases o <;>
                simp [Reader.cipherProcess, hproc, hv, hp, hp2, hr, q.2, Reader.raiseError]
        · simp [hp, hr, q.1, q.2, hcs]
    · rw [if_neg hv]
      simp [hv, skipChild, hs]

/-- A `String` element read without XML error hands to the cipher the
ciphertexts of its `Value` elements, in order. -/
theorem parseEntryString_log (env : Env) (entry : Nat) (x : XmlElement) (st : Reader)
    (hx : (parseEntryString env entry x st).xmlError = false)
    (hs : st.m_randomStream.isSome = true) :
    (parseEntryString env entry x st).cipherLog =
        st.cipherLog ++ x.children.flatMap (Spec.stringValueCiphertext env) ∧
      (parseEntryString env entry x st).m_randomStream.isSome = true := by
  have key : ∀ t : Reader, t.xmlError = false →
      (t.cipherLog = (forEachChild (parseEntryStringChild env) x.children
          (⟨"", "", false, false, false⟩, st)).2.cipherLog ∧
        t.m_randomStream = (forEachChild (parseEntryStringChild env) x.children
          (⟨"", "", false, false, false⟩, st)).2.m_randomStream) →
      (forEachChild (parseEntryStringChild env) x.children
          (⟨"", "", false, false, false⟩, st)).2.xmlError = t.xmlError →
      t.cipherLog = st.cipherLog ++ x.children.flatMap (Spec.stringValueCiphertext env) ∧
        t.m_randomStream.isSome = true := by
    intro t ht hq hxe
    obtain ⟨a, b⟩ := forEachChild_log (parseEntryStringChild env) (Spec.stringValueCiphertext env)
      (parseEntryStringChild_log env) x.children (⟨"", "", false, false, false⟩, st)
      (hxe.trans ht) hs
    rw [hq.1, hq.2]
    exact ⟨a, b⟩
  unfold parseEntryString at hx ⊢
  dsimp only at hx ⊢
  split
  · split
    · rename_i h1 h2
      rw [if_pos h1, if_pos h2] at hx
      exact key _ hx ⟨rfl, rfl⟩ rfl
    · rename_i h1 h2
      rw [if_pos h1, if_neg h2] at hx
      exact key _ hx ⟨by simp, by simp⟩ (by simp)
  · rename_i h1
    rw [if_neg h1] at hx
    exact key _ hx ⟨rfl, rfl⟩ rfl

/-- A `Binary` element read without XML error hands to the cipher the
ciphertexts of its `Value` elements, in order. -/
theorem parseEntryBinary_log (env : Env) (entry : Nat) (x : XmlElement) (st : Reader)
    (hx : (parseEntryBinary env entry x st).2.xmlError = false)
    (hs : st.m_randomStream.isSome = true) :
    (parseEntryBinary env entry x st).2.cipherLog =
        st.cipherLog ++ x.children.flatMap (Spec.binaryValueCiphertext env) ∧
      (parseEntryBinary env entry x st).2.m_randomStream.isSome = true := by
  have key : ∀ t : Reader, t.xmlError = false →
      (t.cipherLog = (forEachChild (parseEntryBinaryChild env) x.children
          (⟨(none, ""), "", [], false, false⟩, st)).2.cipherLog ∧
        t.m_randomStream = (forEachChild (parseEntryBinaryChild env) x.children
          (⟨(none, ""), "", [], false, false⟩, st)).2.m_randomStream) →
      (forEachChild (parseEntryBinaryChild env) x.children
          (⟨(none, ""), "", [], false, false⟩, st)).2.xmlError = t.xmlError →
      t.cipherLog = st.cipherLog ++ x.children.flatMap (Spec.binaryValueCiphertext env) ∧
        t.m_randomStream.isSome = true := by
    intro t ht hq hxe
    obtain ⟨a, b⟩ := forEachChild_log (parseEntryBinaryChild env) (Spec.binaryValueCiphertext env)
      (parseEntryBinaryChild_log env) x.children (⟨(none, ""), "", [], false, false⟩, st)
      (hxe.trans ht) hs
    rw [hq.1, hq.2]
    exact ⟨a, b⟩
  unfold parseEntryBinary at hx ⊢
  dsimp only at hx ⊢
  split
  · split
    · rename_i h1 h2
      rw [if_pos h1, if_pos h2] at hx
      exact key _ hx ⟨rfl, rfl⟩ rfl
    · rename_i h1 h2
      rw [if_pos h1, if_neg h2] at hx
      exact key _ hx ⟨by simp, by simp⟩ (by simp)
  · rename_i h1
    rw [if_neg h1] at hx
    exact key _ hx ⟨rfl, rfl⟩ rfl

/-- A child element of an `Entry` element other than `History`, read without
XML error, hands to the cipher the ciphertexts of its `Value` elements when it
is a `String` or a `Binary` element, and nothing else. -/
theorem parseEntryField_log (env : Env) (entry : Nat) (c : XmlElement)
    (s : List (String × String) × Reader)
    (hx : (parseEntryField env entry c s).2.xmlError = false)
    (hs : s.2.m_randomStream.isSome = true) :
    (parseEntryField env entry c s).2.cipherLog = s.2.cipherLog ++ Spec.fieldCiphertexts env c ∧
      (parseEntryField env entry c s).2.m_randomStream.isSome = true := by
  unfold Spec.fieldCiphertexts
  by_cases hS : c.name = "String"
  · have e : (parseEntryField env entry c s).2 = parseEntryString env entry c s.2 := by
      unfold parseEntryField
      simp [hS]
    rw [e] at hx ⊢
    rw [if_pos hS]
    exact parseEntryString_log env entry c s.2 hx hs
  · by_cases hB : c.name = "Binary"
    · have e : (parseEntryField env entry c s).2 = (parseEntryBinary env entry c s.2).2 := by
        unfold parseEntryField
        simp only [hB, String.reduceEq, if_false, if_true]
        split <;> (try split) <;> rfl
      rw [e] at hx ⊢
      rw [if_neg hS, if_pos hB]
      exact parseEntryBinary_log env entry c s.2 hx hs
    · rw [if_neg hS, if_neg hB]
      exact quiet_keeps (parseEntryField_quiet (quiet_cipher _ _).toQuietLeaf hS hB ⟨rfl, rfl⟩)
        _ hs rfl

theorem log_trans {a b c : Reader} {X Y : List QByteArray}
    (h1 : b.cipherLog = a.cipherLog ++ X) (h2 : c.cipherLog = b.cipherLog ++ Y) :
    c.cipherLog = a.cipherLog ++ (X ++ Y) := by
  rw [h2, h1, List.append_assoc]

/-- The ciphertexts that an `Entry` element read without error hands to the
cipher: those of its `String` and `Binary` elements and of its history
entries, in document order. -/
theorem entry_cipher (env : Env) (n : Nat) :
    (∀ history l st r cs up, st.pending = cs :: up → st.m_randomStream.isSome = true →
      parseEntryWhile env n history l st = some r → r.2.hasError = false →
      r.2.cipherLog = st.cipherLog ++
          (if history = true then Spec.fieldsCiphertexts env cs
            else Spec.entryCiphertexts env cs) ∧
        r.2.m_randomStream.isSome = true) ∧
    (∀ history st r cs up, st.pending = cs :: up → st.m_randomStream.isSome = true →
      parseEntry env n history st = some r → r.2.hasError = false →
      r.2.cipherLog = st.cipherLog ++
          (if history = true then Spec.fieldsCiphertexts env cs
            else Spec.entryCiphertexts env cs) ∧
        r.2.m_randomStream.isSome = true) ∧
    (∀ items st r cs up, st.pending = cs :: up → st.m_randomStream.isSome = true →
      parseEntryHistoryWhile env n items st = some r → r.2.hasError = false →
      r.2.cipherLog = st.cipherLog ++ Spec.historyCiphertexts env cs ∧
        r.2.m_randomStream.isSome = true) ∧
    (∀ st r cs up, st.pending = cs :: up → st.m_randomStream.isSome = true →
      parseEntryHistory env n st = some r → r.2.hasError = false →
      r.2.cipherLog = st.cipherLog ++ Spec.historyCiphertexts env cs ∧
        r.2.m_randomStream.isSome = true) := by
  induction n with
  | zero => simp [parseEntryWhile, parseEntry, parseEntryHistoryWhile, parseEntryHistory]
  | succ n ih =>
    obtain ⟨ihW, ihE, ihHW, ihH⟩ := ih
    have st_aux := parseEntry_stable_aux stable_hasError env n
    refine ⟨?_, ?_, ?_, ?_⟩
    · intro history l st r cs up hp hs hr he
      have hst := noError_of_entry.1 history l st r hr he
      unfold parseEntryWhile at hr
      rcases readNext_cases hp (xmlError_false_of_hasError hst) with ⟨hcs, h1⟩ | ⟨x, rest, hcs, h1⟩
      · rw [h1] at hr
        cases hr
        rw [hcs]
        refine ⟨?_, by simpa using hs⟩
        cases history <;> simp [Spec.fieldsCiphertexts, Spec.entryCiphertexts]
      · rw [h1] at hr
        simp only at hr
        rw [hcs]
        have hs1 : (st.setPending (x.children :: rest :: up)).m_randomStream.isSome = true := by
          simpa using hs
        split at hr
        · rename_i hname
          split at hr
          · exfalso
            have := st_aux.1 _ _ _ r (hasError_raiseError _ _) hr
            rw [he] at this
            cases this
          · rename_i hh0
            have hh1 : history = false := by simpa using hh0
            split at hr
            · cases hr
            · rename_i items st2 hh
              have he2 := noError_of_entry.1 history _ st2 r hr he
              have hp2 := (entry_sync env n).2.2.2 _ (items, st2) x.children (rest :: up) rfl hh he2
              obtain ⟨k1, k2⟩ := ihH _ (items, st2) x.children (rest :: up) rfl hs1 hh he2
              obtain ⟨k3, k4⟩ := ihW history _ st2 r rest up hp2 k2 hr he
              refine ⟨?_, k4⟩
              rw [k3, k1, hh1]
              simp [Spec.entryCiphertexts, hname]
        · rename_i hname
          have he2 := noError_of_entry.1 history _ _ r hr he
          have hx2 : (parseEntryField env l.entry x (l.binaryRefs,
              st.setPending (x.children :: rest :: up))).2.xmlError = false :=
            xmlError_false_of_hasError (by simpa [hasError_endElement] using he2)
          obtain ⟨k1, k2⟩ := parseEntryField_log env l.entry x
            (l.binaryRefs, st.setPending (x.children :: rest :: up)) hx2 hs1
          obtain ⟨k3, k4⟩ := ihW history _ _ r rest up (endElement_pending (c := x.children)
            ((parseEntryField_pending env l.entry x _).trans rfl))
            (by simpa [Reader.endElement] using k2) hr he
          refine ⟨?_, k4⟩
          rw [k3]
          simp only [Reader.endElement, Reader.setPending] at k1 ⊢
          rw [k1]
          cases history <;>
            simp [Spec.fieldsCiphertexts, Spec.entryCiphertexts, hname, List.flatMap_cons]
    · intro history st r cs up hp hs hr he
      rw [parseEntry_succ] at hr
      split at hr
      · cases hr
      · rename_i l st3 hw
        cases hr
        have he3 : st3.hasError = false :=
          hasError_false_of_stable (fun hh => parseEntryFinish_stable stable_hasError hh) he
        obtain ⟨k1, k2⟩ := ihW history _ _ (l, st3) cs up (by simpa [Reader.newEntry] using hp)
          (by simpa [Reader.newEntry] using hs) hw he3
        have q : (parseEntryFinish env history l st3).2.cipherLog = st3.cipherLog ∧
            (parseEntryFinish env history l st3).2.m_randomStream = st3.m_randomStream :=
          parseEntryFinish_quiet (quiet_cipher st3.cipherLog st3.m_randomStream) ⟨rfl, rfl⟩
        rw [q.1, q.2]
        refine ⟨?_, k2⟩
        rw [k1]
        simp [Reader.newEntry]
    · intro items st r cs up hp hs hr he
      have hst := noError_of_entry.2.2.1 items st r hr he
      unfold parseEntryHistoryWhile at hr
      rcases readNext_cases hp (xmlError_false_of_hasError hst) with ⟨hcs, h1⟩ | ⟨x, rest, hcs, h1⟩
      · rw [h1] at hr
        cases hr
        rw [hcs]
        exact ⟨by simp [Spec.historyCiphertexts], by simpa using hs⟩
      · rw [h1] at hr
        simp only at hr
        rw [hcs]
        have hs1 : (st.setPending (x.children :: rest :: up)).m_randomStream.isSome = true := by
          simpa using hs
        split at hr
        · rename_i hname
          split at hr
          · cases hr
          · rename_i e st2 hh
            have he2 := noError_of_entry.2.2.1 _ st2 r hr he
            have hp2 := (entry_sync env n).2.1 true _ (e, st2) x.children (rest :: up) rfl hh he2
            obtain ⟨k1, k2⟩ := ihE true _ (e, st2) x.children (rest :: up) rfl hs1 hh he2
            obtain ⟨k3, k4⟩ := ihHW _ st2 r rest up hp2 k2 hr he
            refine ⟨?_, k4⟩
            rw [k3, k1]
            simp [Spec.historyCiphertexts, hname]
        · rename_i hname
          obtain ⟨k3, k4⟩ := ihHW _ _ r rest up (endElement_pending (c := x.children) rfl)
            (by simpa [skipCurrentElement, Reader.endElement] using hs1) hr he
          refine ⟨?_, k4⟩
          rw [k3]
          simp [Spec.historyCiphertexts, hname, skipCurrentElement, Reader.endElement]
    · intro st r cs up hp hs hr he
      rw [parseEntryHistory] at hr
      exact ihHW [] st r cs up hp hs hr he

theorem ciphertextsUnderGroup_eq (env : Env) (x : XmlElement) :
    x.ciphertextsUnderGroup env =
      if x.name = "Group" then ciphertextsOfGroupList env x.children
      else if x.name = "Entry" then Spec.entryCiphertexts env x.children
      else [] := by
  cases x with
  | mk n a t cs => simp [XmlElement.ciphertextsUnderGroup, XmlElement.name, XmlElement.children]

theorem ciphertextsOfGroupList_cons (env : Env) (x : XmlElement) (xs : List XmlElement) :
    ciphertextsOfGroupList env (x :: xs) =
      x.ciphertextsUnderGroup env ++ ciphertextsOfGroupList env xs := by
  simp [ciphertextsOfGroupList]

/-- The ciphertexts that a `Group` element read without error hands to the
cipher: those of its entries and of the groups below it, in document order. -/
theorem group_cipher (env : Env) (n : Nat) :
    (∀ l st r cs up, st.pending = cs :: up → st.m_randomStream.isSome = true →
      parseGroupWhile env n l st = some r → r.2.hasError = false →
      r.2.cipherLog = st.cipherLog ++ ciphertextsOfGroupList env cs ∧
        r.2.m_randomStream.isSome = true) ∧
    (∀ st r cs up, st.pending = cs :: up → st.m_randomStream.isSome = true →
      parseGroup env n st = some r → r.2.hasError = false →
      r.2.cipherLog = st.cipherLog ++ ciphertextsOfGroupList env cs ∧
        r.2.m_randomStream.isSome = true) := by
  induction n with
  | zero => simp [parseGroupWhile, parseGroup]
  | succ n ih =>
    obtain ⟨ihW, ihG⟩ := ih
    refine ⟨?_, ?_⟩
    · intro l st r cs up hp hs hr he
      have hst := noError_of_group.1 l st r hr he
      unfold parseGroupWhile at hr
      rcases readNext_cases hp (xmlError_false_of_hasError hst) with ⟨hcs, h1⟩ | ⟨c, rest, hcs, h1⟩
      · rw [h1] at hr
        cases hr
        rw [hcs]
        exact ⟨by simp [ciphertextsOfGroupList], by simpa using hs⟩
      · rw [h1] at hr
        simp only at hr
        rw [hcs, ciphertextsOfGroupList_cons, ciphertextsUnderGroup_eq]
        have hs1 : (st.setPending (c.children :: rest :: up)).m_randomStream.isSome = true := by
          simpa using hs
        split at hr
        · rename_i hname
          split at hr
          · cases hr
          · rename_i g st2 hg
            have he2 := noError_of_group.1 _ st2 r hr he
            have hp2 := (group_sync env n).2 _ (g, st2) c.children (rest :: up) rfl hg he2
            obtain ⟨k1, k2⟩ := ihG _ (g, st2) c.children (rest :: up) rfl hs1 hg he2
            obtain ⟨k3, k4⟩ := ihW _ st2 r rest up hp2 k2 hr he
            refine ⟨?_, k4⟩
            rw [k3, k1, if_pos hname]
            simp
        · rename_i hname
          split at hr
          · rename_i hname2
            split at hr
            · cases hr
            · rename_i e st2 hg
              have he2 := noError_of_group.1 _ st2 r hr he
              have hp2 := (entry_sync env n).2.1 false _ (e, st2) c.children (rest :: up) rfl
                hg he2
              obtain ⟨k1, k2⟩ := (entry_cipher env n).2.1 false _ (e, st2) c.children
                (rest :: up) rfl hs1 hg he2
              obtain ⟨k3, k4⟩ := ihW _ st2 r rest up hp2 k2 hr he
              refine ⟨?_, k4⟩
              rw [k3, k1, if_neg hname, if_pos hname2]
              simp
          · rename_i hname2
            have q : (parseGroupField env l.group c
                  (st.setPending (c.children :: rest :: up))).endElement.cipherLog = st.cipherLog ∧
                (parseGroupField env l.group c
                  (st.setPending (c.children :: rest :: up))).endElement.m_randomStream =
                  st.m_randomStream :=
              parseGroupField_quiet (quiet_cipher st.cipherLog st.m_randomStream).toQuietLeaf
                ⟨rfl, rfl⟩
            obtain ⟨k3, k4⟩ := ihW l _ r rest up (endElement_pending (c := c.children)
              ((parseGroupField_pending env l.group c _).trans rfl))
              (by rw [q.2]; exact hs) hr he
            refine ⟨?_, k4⟩
            rw [k3, q.1, if_neg hname, if_neg hname2]
            simp
    · intro st r cs up hp hs hr he
      unfold parseGroup at hr
      simp only at hr
      split at hr
      · cases hr
      · rename_i l st3 hw
        cases hr
        have he3 : st3.hasError = false :=
          hasError_false_of_stable (fun hh => parseGroupFinish_stable stable_hasError hh) he
        obtain ⟨k1, k2⟩ := ihW ⟨st.groups.length, [], []⟩ _ (l, st3) cs up
          (by simpa [Reader.newGroup] using hp) (by simpa [Reader.newGroup] using hs) hw he3
        have q : (parseGroupFinish env l st3).2.cipherLog = st3.cipherLog ∧
            (parseGroupFinish env l st3).2.m_randomStream = st3.m_randomStream :=
          parseGroupFinish_quiet (quiet_cipher st3.cipherLog st3.m_randomStream) ⟨rfl, rfl⟩
        rw [q.1, q.2]
        refine ⟨?_, k2⟩
        rw [k1]
        simp [Reader.newGroup]

/-- The ciphertexts that a `Root` element read without error hands to the
cipher: those of its `Group` elements. -/
theorem root_cipher (env : Env) (n : Nat) :
    ∀ l st r cs up, st.pending = cs :: up → st.m_randomStream.isSome = true →
      parseRootWhile env n l st = some r → r.2.hasError = false →
      r.2.cipherLog = st.cipherLog ++ Spec.rootCiphertexts env cs ∧
        r.2.m_randomStream.isSome = true := by
  induction n with
  | zero => simp [parseRootWhile]
  | succ n ih =>
    intro l st r cs up hp hs hr he
    have st_aux := parseRootWhile_stable stable_hasError env n
    have hst : st.hasError = false :=
      hasError_false_of_stable
        (fun hh => parseRootWhile_stable stable_hasError env (n + 1) l st r hh hr) he
    unfold parseRootWhile at hr
    rcases readNext_cases hp (xmlError_false_of_hasError hst) with ⟨hcs, h1⟩ | ⟨c, rest, hcs, h1⟩
    · rw [h1] at hr
      cases hr
      rw [hcs]
      exact ⟨by simp [Spec.rootCiphertexts], by simpa using hs⟩
    · rw [h1] at hr
      simp only at hr
      rw [hcs]
      have hs1 : (st.setPending (c.children :: rest :: up)).m_randomStream.isSome = true := by
        simpa using hs
      split at hr
      · rename_i hname
        split at hr
        · exfalso
          have := st_aux _ _ r (hasError_raiseError _ _) hr
          rw [he] at this
          cases this
        · split at hr
          · cases hr
          · rename_i g st2 hg
            have he4 : ((st2.setRootGroup g).deleteGroup st2.rootGroup).hasError = false :=
              hasError_false_of_stable (fun hh => st_aux _ _ r hh hr) he
            have he2 : st2.hasError = false := by
              simpa [Reader.hasError, Reader.deleteGroup, Reader.setRootGroup] using he4
            have hp2 := (group_sync env n).2 _ (g, st2) c.children (rest :: up) rfl hg he2
            obtain ⟨k1, k2⟩ := (group_cipher env n).2 _ (g, st2) c.children (rest :: up) rfl
              hs1 hg he2
            obtain ⟨k3, k4⟩ := ih ⟨true, true⟩ _ r rest up (by simpa using hp2)
              (by simpa [Reader.deleteGroup, Reader.setRootGroup] using k2) hr he
            refine ⟨?_, k4⟩
            rw [k3]
            simp only [Reader.deleteGroup_cipherLog, Reader.setRootGroup_cipherLog]
            rw [k1]
            simp [Spec.rootCiphertexts, hname]
      · rename_i hname
        split at hr
        · have q : (parseDeletedObjects env c
                (st.setPending (c.children :: rest :: up))).endElement.cipherLog = st.cipherLog ∧
              (parseDeletedObjects env c
                (st.setPending (c.children :: rest :: up))).endElement.m_randomStream =
                st.m_randomStream :=
            parseDeletedObjects_quiet (quiet_cipher st.cipherLog st.m_randomStream).toQuietLeaf
              ⟨rfl, rfl⟩
          obtain ⟨k3, k4⟩ := ih l _ r rest up (endElement_pending (c := c.children)
            ((parseDeletedObjects_pending env c _).trans rfl))
            (by rw [q.2]; exact hs) hr he
          refine ⟨?_, k4⟩
          rw [k3, q.1]
          simp [Spec.rootCiphertexts, hname]
        · obtain ⟨k3, k4⟩ := ih l _ r rest up (endElement_pending (c := c.children) rfl)
            (by simpa [skipCurrentElement, Reader.endElement] using hs1) hr he
          refine ⟨?_, k4⟩
          rw [k3]
          simp [skipCurrentElement, Reader.endElement, Spec.rootCiphertexts, hname]

/-- The ciphertexts that the child elements of the document element, read
without error and with the flag of success, hand to the cipher. -/
theorem file_cipher (env : Env) (n : Nat) :
    ∀ l st r cs up, st.pending = cs :: up → st.m_randomStream.isSome = true →
      parseKeePassFileWhile env n l st = some r → r.2.hasError = false →
      r.1.rootParsedSuccessfully = true →
      r.2.cipherLog = st.cipherLog ++
          cs.flatMap (fun x =>
            if x.name = "Root" then Spec.rootCiphertexts env x.children else []) ∧
        r.2.m_randomStream.isSome = true := by
  induction n with
  | zero => simp [parseKeePassFileWhile]
  | succ n ih =>
    intro l st r cs up hp hs hr he hf
    have st_aux := parseKeePassFileWhile_stable stable_hasError env n
    have hst : st.hasError = false :=
      hasError_false_of_stable
        (fun hh => parseKeePassFileWhile_stable stable_hasError env (n + 1) l st r hh hr) he
    unfold parseKeePassFileWhile at hr
    rcases readNext_cases hp (xmlError_false_of_hasError hst) with ⟨hcs, h1⟩ | ⟨c, rest, hcs, h1⟩
    · rw [h1] at hr
      cases hr
      rw [hcs]
      exact ⟨by simp, by simpa using hs⟩
    · rw [h1] at hr
      simp only at hr
      rw [hcs]
      have hs1 : (st.setPending (c.children :: rest :: up)).m_randomStream.isSome = true := by
        simpa using hs
      split at hr
      · rename_i hname
        have q : (parseMeta env c
              (st.setPending (c.children :: rest :: up))).endElement.cipherLog = st.cipherLog ∧
            (parseMeta env c
              (st.setPending (c.children :: rest :: up))).endElement.m_randomStream =
              st.m_randomStream :=
          parseMeta_quiet (quiet_cipher st.cipherLog st.m_randomStream).toQuietLeaf ⟨rfl, rfl⟩
        obtain ⟨k3, k4⟩ := ih l _ r rest up (endElement_pending (c := c.children)
          ((parseMeta_pending env c _).trans rfl))
          (by rw [q.2]; exact hs) hr he hf
        refine ⟨?_, k4⟩
        rw [k3, q.1]
        simp [hname]
      · split at hr
        · rename_i hname
          split at hr
          · exfalso
            rename_i hfound
            have := parseKeePassFileWhile_flag env n _ _ r hr hfound rfl
            rw [hf] at this
            cases this
          · split at hr
            · cases hr
            · rename_i ok st2 hroot
              have he2 : st2.hasError = false :=
                hasError_false_of_stable (fun hh => st_aux _ _ r hh hr) he
              cases n with
              | zero =>
                rw [parseRoot] at hroot
                cases hroot
              | succ m =>
                rw [parseRoot] at hroot
                split at hroot
                · cases hroot
                · rename_i l1 st1 hw
                  cases hroot
                  obtain ⟨s1, _⟩ := parseRootWhile_sync env m ⟨false, false⟩ _ (l1, st2)
                    c.children (rest :: up) rfl hw he2
                  obtain ⟨k1, k2⟩ := root_cipher env m ⟨false, false⟩ _ (l1, st2)
                    c.children (rest :: up) rfl hs1 hw he2
                  obtain ⟨k3, k4⟩ := ih ⟨true, l1.groupParsedSuccessfully⟩ st2 r rest up s1 k2
                    hr he hf
                  refine ⟨?_, k4⟩
                  rw [k3, k1]
                  simp [hname]
        · rename_i hname1 hname
          obtain ⟨k3, k4⟩ := ih l _ r rest up (endElement_pending (c := c.children) rfl)
            (by simpa [skipCurrentElement, Reader.endElement] using hs1) hr he hf
          refine ⟨?_, k4⟩
          rw [k3]
          simp [skipCurrentElement, Reader.endElement, hname]

/-- The cipher log of a decode with a cipher that ends without error: the
ciphertexts of the document, in document order. -/
theorem readDatabaseFuel_cipher (env : Env) (fuel : Nat) (strictMode : Bool)
    (binaryPool : List (String × QByteArray)) (rs : QByteArray) (doc : XmlElement) (r : Reader)
    (hr : readDatabaseFuel env fuel strictMode binaryPool (some rs) doc = some r)
    (he : r.hasError = false) :
    r.cipherLog = Spec.documentCiphertexts env doc ∧ r.m_randomStream.isSome = true := by
  unfold readDatabaseFuel at hr
  rw [start_pending] at hr
  simp only at hr
  have hfalse : ∀ s : Reader, (readDatabaseFinish env false s).hasError = true := by
    intro s
    unfold readDatabaseFinish
    rw [if_pos (by simp)]
    exact hasError_raiseError _ _
  split at hr
  · cases fuel with
    | zero =>
      rw [parseKeePassFile] at hr
      cases hr
    | succ n =>
      rw [parseKeePassFile] at hr
      cases hw : parseKeePassFileWhile env n ⟨false, false⟩
          ((Reader.start strictMode binaryPool (some rs) doc).setPending
            (doc.children :: [] :: [])) with
      | none =>
        rw [hw] at hr
        cases hr
      | some w =>
        rw [hw] at hr
        obtain ⟨l, st1⟩ := w
        simp only [Option.some.injEq] at hr
        subst hr
        cases hok : l.rootParsedSuccessfully with
        | false =>
          rw [hok, hfalse] at he
          cases he
        | true =>
          rw [hok, hasError_readDatabaseFinish] at he
          obtain ⟨k1, k2⟩ := file_cipher env n ⟨false, false⟩
            ((Reader.start strictMode binaryPool (some rs) doc).setPending
              (doc.children :: [] :: []))
            (l, st1) doc.children ([] :: []) rfl rfl hw he hok
          have q : (readDatabaseFinish env true st1).cipherLog = st1.cipherLog ∧
              (readDatabaseFinish env true st1).m_randomStream = st1.m_randomStream :=
            readDatabaseFinish_quiet (quiet_cipher st1.cipherLog st1.m_randomStream).toQuietLeaf
              ⟨rfl, rfl⟩
          rw [q.1, q.2]
          refine ⟨?_, k2⟩
          rw [k1]
          simp [Reader.start, Spec.documentCiphertexts]
  · cases hr
    rw [hfalse] at he
    cases he

theorem inserted_head {T : String → List String} {u : XmlElement} {b : Bool}
    {x y : XmlElement} (h : Inserted T u b x y) :
    y.name = x.name ∧ y.attributes = x.attributes ∧ y.text = x.text := by
  cases h <;> exact ⟨rfl, rfl, rfl⟩

theorem inserted_attr {T : String → List String} {u : XmlElement} {b : Bool}
    {x y : XmlElement} (h : Inserted T u b x y) (k : String) : y.attr k = x.attr k := by
  unfold XmlElement.attr
  rw [(inserted_head h).2.1]

theorem inserted_hasAttribute {T : String → List String} {u : XmlElement} {b : Bool}
    {x y : XmlElement}
    (h : Inserted T u b x y) (k : String) : y.hasAttribute k = x.hasAttribute k := by
  unfold XmlElement.hasAttribute
  rw [(inserted_head h).2.1]

/-- An element that is read as text has child elements after the insertion
exactly when it had some before. -/
theorem inserted_isEmpty {T : String → List String} {u : XmlElement} {b : Bool}
    {x y : XmlElement} (h : Inserted T u b x y)
    (hn : x.name ∉ containerNames ∨ (b = true ∧ x.name = "Binary")) :
    y.children.isEmpty = x.children.isEmpty := by
  cases h with
  | refl => rfl
  | here _ n a t pre post h1 h2 h3 =>
    rcases hn with hn | hn
    · exact absurd h1 hn
    · exact absurd hn.2 (h3 hn.1)
  | inside _ n a t pre c d post hc =>
    show (pre ++ d :: post).isEmpty = (pre ++ c :: post).isEmpty
    cases pre <;> rfl

theorem inserted_children {T : String → List String} {u : XmlElement} {b : Bool}
    {x y : XmlElement} (h : Inserted T u b x y) :
    InsertedList T u (decide (x.name = "Binaries")) (T x.name) x.children y.children := by
  cases h with
  | refl => exact InsertedList.refl _
  | here _ n a t pre post h1 h2 h3 => exact InsertedList.here pre post h2
  | inside _ n a t pre c d post hc => exact InsertedList.inside pre c d post hc

/-- A name of the own loop of an element is a name of `recognizedIn`. -/
theorem recognizedBy_of_recognizedIn {a n : String} (h : a ∉ recognizedIn n) :
    a ∉ recognizedBy n := by
  unfold recognizedIn at h
  split at h
  · rename_i hn
    intro hm
    apply h
    have key : ∀ k ∈ ["KeePassFile", "Root", "Group", "Entry", "History"],
        ∀ m ∈ recognizedBy k, m ∈ streamNames := by decide
    exact key n (by simpa using hn) a hm
  · exact h

/-- An insertion that is skipped in every document is one that the loop of its
container skips. -/
theorem inserted_local {u : XmlElement} {b : Bool} {x y : XmlElement}
    (h : Inserted recognizedIn u b x y) : Inserted recognizedBy u b x y := by
  induction h with
  | refl b x => exact Inserted.refl b x
  | here b n a t pre post h1 h2 h3 =>
    exact Inserted.here b n a t pre post h1 (recognizedBy_of_recognizedIn h2) h3
  | inside b n a t pre c d post _ ih => exact Inserted.inside b n a t pre c d post ih

/-! ### C26: the state changes of the reader do not look at the cursor -/

theorem setPending_self (st : Reader) : st.setPending st.pending = st := by
  cases st
  rfl

theorem setPending_setPending (st : Reader) (q r : List (List XmlElement)) :
    (st.setPending q).setPending r = st.setPending r := rfl

theorem setPending_xmlError (st : Reader) (q : List (List XmlElement)) :
    (st.setPending q).xmlError = st.xmlError := rfl

theorem setPending_m_strictMode (st : Reader) (q : List (List XmlElement)) :
    (st.setPending q).m_strictMode = st.m_strictMode := rfl

theorem setPending_m_randomStream (st : Reader) (q : List (List XmlElement)) :
    (st.setPending q).m_randomStream = st.m_randomStream := rfl

theorem setPending_m_binaryPool (st : Reader) (q : List (List XmlElement)) :
    (st.setPending q).m_binaryPool = st.m_binaryPool := rfl

theorem setPending_m_binaryMap (st : Reader) (q : List (List XmlElement)) :
    (st.setPending q).m_binaryMap = st.m_binaryMap := rfl

theorem setPending_m_groups (st : Reader) (q : List (List XmlElement)) :
    (st.setPending q).m_groups = st.m_groups := rfl

theorem setPending_m_entries (st : Reader) (q : List (List XmlElement)) :
    (st.setPending q).m_entries = st.m_entries := rfl

theorem setPending_m_tmpParent (st : Reader) (q : List (List XmlElement)) :
    (st.setPending q).m_tmpParent = st.m_tmpParent := rfl

theorem setPending_rootGroup (st : Reader) (q : List (List XmlElement)) :
    (st.setPending q).rootGroup = st.rootGroup := rfl

theorem setPending_hasError (st : Reader) (q : List (List XmlElement)) :
    (st.setPending q).hasError = st.hasError := rfl

theorem setPending_group (st : Reader) (q : List (List XmlElement)) (p : Nat) :
    (st.setPending q).group p = st.group p := rfl

theorem setPending_entry (st : Reader) (q : List (List XmlElement)) (p : Nat) :
    (st.setPending q).entry p = st.entry p := rfl

theorem setPending_groups (st : Reader) (q : List (List XmlElement)) :
    (st.setPending q).groups = st.groups := rfl

theorem setPending_entries (st : Reader) (q : List (List XmlElement)) :
    (st.setPending q).entries = st.entries := rfl

theorem raiseError_setPending (st : Reader) (q : List (List XmlElement)) (m : String) :
    (st.setPending q).raiseError m = (st.raiseError m).setPending q := rfl

theorem setXmlError_setPending (st : Reader) (q : List (List XmlElement)) :
    (st.setPending q).setXmlError = st.setXmlError.setPending q := rfl

theorem setNullDeref_setPending (st : Reader) (q : List (List XmlElement)) :
    (st.setPending q).setNullDeref = st.setNullDeref.setPending q := rfl

theorem setHeaderHash_setPending (st : Reader) (q : List (List XmlElement)) (v : QByteArray) :
    (st.setPending q).setHeaderHash v = (st.setHeaderHash v).setPending q := rfl

theorem setBinaryPool_setPending (st : Reader) (q : List (List XmlElement))
    (v : List (String × QByteArray)) :
    (st.setPending q).setBinaryPool v = (st.setBinaryPool v).setPending q := rfl

theorem addBinaryRefs_setPending (st : Reader) (q : List (List XmlElement))
    (v : List (String × Nat × String)) :
    (st.setPending q).addBinaryRefs v = (st.addBinaryRefs v).setPending q := rfl

theorem addDeletedObject_setPending (st : Reader) (q : List (List XmlElement))
    (d : DeletedObject) :
    (st.setPending q).addDeletedObject d = (st.addDeletedObject d).setPending q := rfl

theorem setMeta_setPending (st : Reader) (q : List (List XmlElement)) (f : Metadata → Metadata) :
    (st.setPending q).setMeta f = (st.setMeta f).setPending q := rfl

theorem setRootPtr_setPending (st : Reader) (q : List (List XmlElement)) (p : Nat) :
    (st.setPending q).setRootPtr p = (st.setRootPtr p).setPending q := rfl

theorem registerGroup_setPending (st : Reader) (q : List (List XmlElement)) (u : Uuid) (p : Nat) :
    (st.setPending q).registerGroup u p = (st.registerGroup u p).setPending q := rfl

theorem registerEntry_setPending (st : Reader) (q : List (List XmlElement)) (u : Uuid) (p : Nat) :
    (st.setPending q).registerEntry u p = (st.registerEntry u p).setPending q := rfl

theorem logGroup_setPending (st : Reader) (q : List (List XmlElement)) (u : Uuid) (p : Nat) :
    (st.setPending q).logGroup u p = (st.logGroup u p).setPending q := rfl

theorem logEntry_setPending (st : Reader) (q : List (List XmlElement)) (u : Uuid) (p : Nat) :
    (st.setPending q).logEntry u p = (st.logEntry u p).setPending q := rfl

theorem defGroup_setPending (st : Reader) (q : List (List XmlElement)) (u : Uuid) (p : Nat) :
    (st.setPending q).defGroup u p = (st.defGroup u p).setPending q := rfl

theorem defEntry_setPending (st : Reader) (q : List (List XmlElement)) (u : Uuid) (p : Nat) :
    (st.setPending q).defEntry u p = (st.defEntry u p).setPending q := rfl

theorem randomUuid_setPending (env : Env) (st : Reader) (q : List (List XmlElement)) :
    (st.setPending q).randomUuid env =
      ((st.randomUuid env).1, (st.randomUuid env).2.setPending q) := rfl

theorem cipherProcess_setPending (env : Env) (st : Reader) (q : List (List XmlElement))
    (cs c : QByteArray) :
    (st.setPending q).cipherProcess env cs c =
      ((st.cipherProcess env cs c).1, (st.cipherProcess env cs c).2.setPending q) := rfl

theorem newGroup_setPending (st : Reader) (q : List (List XmlElement)) :
    (st.setPending q).newGroup = (st.newGroup.1, st.newGroup.2.setPending q) := rfl

theorem newEntry_setPending (st : Reader) (q : List (List XmlElement)) :
    (st.setPending q).newEntry = (st.newEntry.1, st.newEntry.2.setPending q) := rfl

theorem updGroup_setPending (st : Reader) (q : List (List XmlElement)) (p : Nat)
    (f : DbGroup → DbGroup) :
    (st.setPending q).updGroup p f = (st.updGroup p f).setPending q := by
  unfold Reader.updGroup
  simp only [setPending_groups]
  split <;> rfl

theorem updEntry_setPending (st : Reader) (q : List (List XmlElement)) (p : Nat)
    (f : Entry → Entry) :
    (st.setPending q).updEntry p f = (st.updEntry p f).setPending q := by
  unfold Reader.updEntry
  simp only [setPending_entries]
  split <;> rfl

theorem deleteGroup_setPending (st : Reader) (q : List (List XmlElement)) (p : Nat) :
    (st.setPending q).deleteGroup p = (st.deleteGroup p).setPending q :=
  updGroup_setPending st q p _

theorem deleteEntry_setPending (st : Reader) (q : List (List XmlElement)) (p : Nat) :
    (st.setPending q).deleteEntry p = (st.deleteEntry p).setPending q :=
  updEntry_setPending st q p _

theorem cleanupParent_setPending (st : Reader) (q : List (List XmlElement)) (c : Nat) :
    (st.setPending q).cleanupParent c = (st.cleanupParent c).setPending q := by
  unfold Reader.cleanupParent
  simp only [setPending_group, updGroup_setPending]
  split <;> rfl

theorem setParent_setPending (st : Reader) (q : List (List XmlElement)) (c p : Nat) :
    (st.setPending q).setParent c p = (st.setParent c p).setPending q := by
  unfold Reader.setParent
  simp only [cleanupParent_setPending, updGroup_setPending]

theorem setGroup_setPending (st : Reader) (q : List (List XmlElement)) (e p : Nat) :
    (st.setPending q).setGroup e p = (st.setGroup e p).setPending q := by
  unfold Reader.setGroup
  simp only [setPending_entry, updGroup_setPending, updEntry_setPending]
  split
  · rfl
  · split <;> simp only [updGroup_setPending, updEntry_setPending]

theorem setRootGroup_setPending (st : Reader) (q : List (List XmlElement)) (p : Nat) :
    (st.setPending q).setRootGroup p = (st.setRootGroup p).setPending q := by
  unfold Reader.setRootGroup
  simp only [cleanupParent_setPending, updGroup_setPending, setRootPtr_setPending]

theorem getGroup_setPending (u : Uuid) (st : Reader) (q : List (List XmlElement)) :
    getGroup u (st.setPending q) = ((getGroup u st).1, (getGroup u st).2.setPending q) := by
  unfold getGroup
  simp only [setPending_m_groups, newGroup_setPending, updGroup_setPending,
    setPending_m_tmpParent, setParent_setPending, registerGroup_setPending, logGroup_setPending]
  split
  · rfl
  · split <;> rfl

theorem getEntry_setPending (u : Uuid) (st : Reader) (q : List (List XmlElement)) :
    getEntry u (st.setPending q) = ((getEntry u st).1, (getEntry u st).2.setPending q) := by
  unfold getEntry
  simp only [setPending_m_entries, newEntry_setPending, updEntry_setPending,
    setPending_m_tmpParent, setGroup_setPending, registerEntry_setPending, logEntry_setPending]
  split
  · rfl
  · split <;> rfl

/-- The loop over the child elements of an element gives the same result with
one more child element that its body skips, or with one child element changed
into one on which its body gives the same result, whatever the cursor. -/
theorem forEachChild_ins {σ : Type} {T : String → List String} {u : XmlElement} {b : Bool}
    {L : List String}
    (body : XmlElement → σ × Reader → σ × Reader)
    (hskip : u.name ∉ L → ∀ s, body u s = s)
    (hbody : ∀ (c d : XmlElement) (a : σ) (st : Reader) (q : List (List XmlElement)),
      Inserted T u b c d →
      body d (a, st.setPending q) = ((body c (a, st)).1, (body c (a, st)).2.setPending q))
    {cs ds : List XmlElement} (hl : InsertedList T u b L cs ds) (a : σ) (st : Reader)
    (q : List (List XmlElement)) :
    forEachChild body ds (a, st.setPending q) =
      ((forEachChild body cs (a, st)).1, (forEachChild body cs (a, st)).2.setPending q) := by
  have same : ∀ (xs : List XmlElement) (a : σ) (st : Reader),
      forEachChild body xs (a, st.setPending q) =
        ((forEachChild body xs (a, st)).1, (forEachChild body xs (a, st)).2.setPending q) := by
    intro xs
    induction xs with
    | nil => intro a st; rfl
    | cons x rest ih =>
      intro a st
      unfold forEachChild
      simp only [setPending_xmlError]
      split
      · rfl
      · rw [hbody x x a st q (Inserted.refl b x)]
        exact ih _ _
  cases hl with
  | refl => exact same _ a st
  | here pre post hu =>
    induction pre generalizing a st with
    | nil =>
      simp only [List.nil_append]
      rw [forEachChild]
      simp only [setPending_xmlError]
      split
      · rename_i hx
        rw [forEachChild_of_xmlError body post (a, st) hx]
      · rw [hskip hu]
        exact same _ a st
    | cons x rest ih =>
      simp only [List.cons_append]
      unfold forEachChild
      simp only [setPending_xmlError]
      split
      · rfl
      · rw [hbody x x a st q (Inserted.refl b x)]
        exact ih _ _
  | inside pre c d post hc =>
    induction pre generalizing a st with
    | nil =>
      simp only [List.nil_append]
      unfold forEachChild
      simp only [setPending_xmlError]
      split
      · rfl
      · rw [hbody c d a st q hc]
        exact same _ _ _
    | cons x rest ih =>
      simp only [List.cons_append]
      unfold forEachChild
      simp only [setPending_xmlError]
      split
      · rfl
      · rw [hbody x x a st q (Inserted.refl b x)]
        exact ih _ _

/-! ### The parse functions of child elements on an element with one more child -/

theorem readString_ins {u : XmlElement} {b : Bool} {c d : XmlElement} (h : Inserted recognizedBy u b c d)
    (hn : c.name ∉ containerNames ∨ (b = true ∧ c.name = "Binary")) (st : Reader) (q : List (List XmlElement)) :
    readString d (st.setPending q) = ((readString c st).1, (readString c st).2.setPending q) := by
  unfold readString
  rw [(inserted_head h).2.2, inserted_isEmpty h hn]
  try simp only [raiseError_setPending, setXmlError_setPending, setNullDeref_setPending, setHeaderHash_setPending, setBinaryPool_setPending, addBinaryRefs_setPending, addDeletedObject_setPending, setMeta_setPending, randomUuid_setPending, cipherProcess_setPending, updGroup_setPending, updEntry_setPending, getGroup_setPending, getEntry_setPending, setPending_xmlError, setPending_m_strictMode, setPending_m_randomStream, setPending_m_binaryPool, setPending_m_binaryMap, setPending_m_groups, setPending_m_entries, setPending_m_tmpParent, setPending_rootGroup, setPending_hasError, setPending_group, setPending_entry, setPending_groups, setPending_entries, setPending_setPending]
  all_goals repeat' (first | rfl | contradiction | split | simp only [raiseError_setPending, setXmlError_setPending, setNullDeref_setPending, setHeaderHash_setPending, setBinaryPool_setPending, addBinaryRefs_setPending, addDeletedObject_setPending, setMeta_setPending, randomUuid_setPending, cipherProcess_setPending, updGroup_setPending, updEntry_setPending, getGroup_setPending, getEntry_setPending, setPending_xmlError, setPending_m_strictMode, setPending_m_randomStream, setPending_m_binaryPool, setPending_m_binaryMap, setPending_m_groups, setPending_m_entries, setPending_m_tmpParent, setPending_rootGroup, setPending_hasError, setPending_group, setPending_entry, setPending_groups, setPending_entries, setPending_setPending])

theorem readBool_ins {u : XmlElement} {b : Bool} {c d : XmlElement} (h : Inserted recognizedBy u b c d)
    (hn : c.name ∉ containerNames ∨ (b = true ∧ c.name = "Binary")) (st : Reader) (q : List (List XmlElement)) :
    readBool d (st.setPending q) = ((readBool c st).1, (readBool c st).2.setPending q) := by
  unfold readBool
  simp only [readString_ins h hn] <;>
    (generalize readString c st = A
     obtain ⟨v, t⟩ := A
     try simp only [raiseError_setPending, setXmlError_setPending, setNullDeref_setPending, setHeaderHash_setPending, setBinaryPool_setPending, addBinaryRefs_setPending, addDeletedObject_setPending, setMeta_setPending, randomUuid_setPending, cipherProcess_setPending, updGroup_setPending, updEntry_setPending, getGroup_setPending, getEntry_setPending, setPending_xmlError, setPending_m_strictMode, setPending_m_randomStream, setPending_m_binaryPool, setPending_m_binaryMap, setPending_m_groups, setPending_m_entries, setPending_m_tmpParent, setPending_rootGroup, setPending_hasError, setPending_group, setPending_entry, setPending_groups, setPending_entries, setPending_setPending]
     repeat' (first | rfl | contradiction | split | simp only [raiseError_setPending, setXmlError_setPending, setNullDeref_setPending, setHeaderHash_setPending, setBinaryPool_setPending, addBinaryRefs_setPending, addDeletedObject_setPending, setMeta_setPending, randomUuid_setPending, cipherProcess_setPending, updGroup_setPending, updEntry_setPending, getGroup_setPending, getEntry_setPending, setPending_xmlError, setPending_m_strictMode, setPending_m_randomStream, setPending_m_binaryPool, setPending_m_binaryMap, setPending_m_groups, setPending_m_entries, setPending_m_tmpParent, setPending_rootGroup, setPending_hasError, setPending_group, setPending_entry, setPending_groups, setPending_entries, setPending_setPending]))

theorem readNumber_ins (env : Env) {u : XmlElement} {b : Bool} {c d : XmlElement} (h : Inserted recognizedBy u b c d)
    (hn : c.name ∉ containerNames ∨ (b = true ∧ c.name = "Binary")) (st : Reader) (q : List (List XmlElement)) :
    readNumber env d (st.setPending q) = ((readNumber env c st).1, (readNumber env c st).2.setPending q) := by
  unfold readNumber
  simp only [readString_ins h hn] <;>
    (generalize readString c st = A
     obtain ⟨v, t⟩ := A
     try simp only [raiseError_setPending, setXmlError_setPending, setNullDeref_setPending, setHeaderHash_setPending, setBinaryPool_setPending, addBinaryRefs_setPending, addDeletedObject_setPending, setMeta_setPending, randomUuid_setPending, cipherProcess_setPending, updGroup_setPending, updEntry_setPending, getGroup_setPending, getEntry_setPending, setPending_xmlError, setPending_m_strictMode, setPending_m_randomStream, setPending_m_binaryPool, setPending_m_binaryMap, setPending_m_groups, setPending_m_entries, setPending_m_tmpParent, setPending_rootGroup, setPending_hasError, setPending_group, setPending_entry, setPending_groups, setPending_entries, setPending_setPending]
     repeat' (first | rfl | contradiction | split | simp only [raiseError_setPending, setXmlError_setPending, setNullDeref_setPending, setHeaderHash_setPending, setBinaryPool_setPending, addBinaryRefs_setPending, addDeletedObject_setPending, setMeta_setPending, randomUuid_setPending, cipherProcess_setPending, updGroup_setPending, updEntry_setPending, getGroup_setPending, getEntry_setPending, setPending_xmlError, setPending_m_strictMode, setPending_m_randomStream, setPending_m_binaryPool, setPending_m_binaryMap, setPending_m_groups, setPending_m_entries, setPending_m_tmpParent, setPending_rootGroup, setPending_hasError, setPending_group, setPending_entry, setPending_groups, setPending_entries, setPending_setPending]))

theorem readBinary_ins (env : Env) {u : XmlElement} {b : Bool} {c d : XmlElement} (h : Inserted recognizedBy u b c d)
    (hn : c.name ∉ containerNames ∨ (b = true ∧ c.name = "Binary")) (st : Reader) (q : List (List XmlElement)) :
    readBinary env d (st.setPending q) = ((readBinary env c st).1, (readBinary env c st).2.setPending q) := by
  unfold readBinary
  simp only [readString_ins h hn] <;>
    (generalize readString c st = A
     obtain ⟨v, t⟩ := A
     try simp only [raiseError_setPending, setXmlError_setPending, setNullDeref_setPending, setHeaderHash_setPending, setBinaryPool_setPending, addBinaryRefs_setPending, addDeletedObject_setPending, setMeta_setPending, randomUuid_setPending, cipherProcess_setPending, updGroup_setPending, updEntry_setPending, getGroup_setPending, getEntry_setPending, setPending_xmlError, setPending_m_strictMode, setPending_m_randomStream, setPending_m_binaryPool, setPending_m_binaryMap, setPending_m_groups, setPending_m_entries, setPending_m_tmpParent, setPending_rootGroup, setPending_hasError, setPending_group, setPending_entry, setPending_groups, setPending_entries, setPending_setPending]
     repeat' (first | rfl | contradiction | split | simp only [raiseError_setPending, setXmlError_setPending, setNullDeref_setPending, setHeaderHash_setPending, setBinaryPool_setPending, addBinaryRefs_setPending, addDeletedObject_setPending, setMeta_setPending, randomUuid_setPending, cipherProcess_setPending, updGroup_setPending, updEntry_setPending, getGroup_setPending, getEntry_setPending, setPending_xmlError, setPending_m_strictMode, setPending_m_randomStream, setPending_m_binaryPool, setPending_m_binaryMap, setPending_m_groups, setPending_m_entries, setPending_m_tmpParent, setPending_rootGroup, setPending_hasError, setPending_group, setPending_entry, setPending_groups, setPending_entries, setPending_setPending]))

theorem readUuid_ins (env : Env) {u : XmlElement} {b : Bool} {c d : XmlElement} (h : Inserted recognizedBy u b c d)
    (hn : c.name ∉ containerNames ∨ (b = true ∧ c.name = "Binary")) (st : Reader) (q : List (List XmlElement)) :
    readUuid env d (st.setPending q) = ((readUuid env c st).1, (readUuid env c st).2.setPending q) := by
  unfold readUuid
  simp only [readBinary_ins env h hn] <;>
    (generalize readBinary env c st = A
     obtain ⟨v, t⟩ := A
     try simp only [raiseError_setPending, setXmlError_setPending, setNullDeref_setPending, setHeaderHash_setPending, setBinaryPool_setPending, addBinaryRefs_setPending, addDeletedObject_setPending, setMeta_setPending, randomUuid_setPending, cipherProcess_setPending, updGroup_setPending, updEntry_setPending, getGroup_setPending, getEntry_setPending, setPending_xmlError, setPending_m_strictMode, setPending_m_randomStream, setPending_m_binaryPool, setPending_m_binaryMap, setPending_m_groups, setPending_m_entries, setPending_m_tmpParent, setPending_rootGroup, setPending_hasError, setPending_group, setPending_entry, setPending_groups, setPending_entries, setPending_setPending]
     repeat' (first | rfl | contradiction | split | simp only [raiseError_setPending, setXmlError_setPending, setNullDeref_setPending, setHeaderHash_setPending, setBinaryPool_setPending, addBinaryRefs_setPending, addDeletedObject_setPending, setMeta_setPending, randomUuid_setPending, cipherProcess_setPending, updGroup_setPending, updEntry_setPending, getGroup_setPending, getEntry_setPending, setPending_xmlError, setPending_m_strictMode, setPending_m_randomStream, setPending_m_binaryPool, setPending_m_binaryMap, setPending_m_groups, setPending_m_entries, setPending_m_tmpParent, setPending_rootGroup, setPending_hasError, setPending_group, setPending_entry, setPending_groups, setPending_entries, setPending_setPending]))

theorem readCompressedBinary_ins (env : Env) {u : XmlElement} {b : Bool} {c d : XmlElement} (h : Inserted recognizedBy u b c d)
    (hn : c.name ∉ containerNames ∨ (b = true ∧ c.name = "Binary")) (st : Reader) (q : List (List XmlElement)) :
    readCompressedBinary env d (st.setPending q) = ((readCompressedBinary env c st).1, (readCompressedBinary env c st).2.setPending q) := by
  unfold readCompressedBinary
  simp only [readBinary_ins env h hn] <;>
    (generalize readBinary env c st = A
     obtain ⟨v, t⟩ := A
     try simp only [raiseError_setPending, setXmlError_setPending, setNullDeref_setPending, setHeaderHash_setPending, setBinaryPool_setPending, addBinaryRefs_setPending, addDeletedObject_setPending, setMeta_setPending, randomUuid_setPending, cipherProcess_setPending, updGroup_setPending, updEntry_setPending, getGroup_setPending, getEntry_setPending, setPending_xmlError, setPending_m_strictMode, setPending_m_randomStream, setPending_m_binaryPool, setPending_m_binaryMap, setPending_m_groups, setPending_m_entries, setPending_m_tmpParent, setPending_rootGroup, setPending_hasError, setPending_group, setPending_entry, setPending_groups, setPending_entries, setPending_setPending]
     repeat' (first | rfl | contradiction | split | simp only [raiseError_setPending, setXmlError_setPending, setNullDeref_setPending, setHeaderHash_setPending, setBinaryPool_setPending, addBinaryRefs_setPending, addDeletedObject_setPending, setMeta_setPending, randomUuid_setPending, cipherProcess_setPending, updGroup_setPending, updEntry_setPending, getGroup_setPending, getEntry_setPending, setPending_xmlError, setPending_m_strictMode, setPending_m_randomStream, setPending_m_binaryPool, setPending_m_binaryMap, setPending_m_groups, setPending_m_entries, setPending_m_tmpParent, setPending_rootGroup, setPending_hasError, setPending_group, setPending_entry, setPending_groups, setPending_entries, setPending_setPending]))

theorem readDateTime_ins (env : Env) {u : XmlElement} {b : Bool} {c d : XmlElement} (h : Inserted recognizedBy u b c d)
    (hn : c.name ∉ containerNames ∨ (b = true ∧ c.name = "Binary")) (st : Reader) (q : List (List XmlElement)) :
    readDateTime env d (st.setPending q) = ((readDateTime env c st).1, (readDateTime env c st).2.setPending q) := by
  unfold readDateTime
  simp only [readString_ins h hn] <;>
    (generalize readString c st = A
     obtain ⟨v, t⟩ := A
     try simp only [raiseError_setPending, setXmlError_setPending, setNullDeref_setPending, setHeaderHash_setPending, setBinaryPool_setPending, addBinaryRefs_setPending, addDeletedObject_setPending, setMeta_setPending, randomUuid_setPending, cipherProcess_setPending, updGroup_setPending, updEntry_setPending, getGroup_setPending, getEntry_setPending, setPending_xmlError, setPending_m_strictMode, setPending_m_randomStream, setPending_m_binaryPool, setPending_m_binaryMap, setPending_m_groups, setPending_m_entries, setPending_m_tmpParent, setPending_rootGroup, setPending_hasError, setPending_group, setPending_entry, setPending_groups, setPending_entries, setPending_setPending]
     repeat' (first | rfl | contradiction | split | simp only [raiseError_setPending, setXmlError_setPending, setNullDeref_setPending, setHeaderHash_setPending, setBinaryPool_setPending, addBinaryRefs_setPending, addDeletedObject_setPending, setMeta_setPending, randomUuid_setPending, cipherProcess_setPending, updGroup_setPending, updEntry_setPending, getGroup_setPending, getEntry_setPending, setPending_xmlError, setPending_m_strictMode, setPending_m_randomStream, setPending_m_binaryPool, setPending_m_binaryMap, setPending_m_groups, setPending_m_entries, setPending_m_tmpParent, setPending_rootGroup, setPending_hasError, setPending_group, setPending_entry, setPending_groups, setPending_entries, setPending_setPending]))

theorem readColor_ins (env : Env) {u : XmlElement} {b : Bool} {c d : XmlElement} (h : Inserted recognizedBy u b c d)
    (hn : c.name ∉ containerNames ∨ (b = true ∧ c.name = "Binary")) (st : Reader) (q : List (List XmlElement)) :
    readColor env d (st.setPending q) = ((readColor env c st).1, (readColor env c st).2.setPending q) := by
  unfold readColor
  simp only [readString_ins h hn] <;>
    (generalize readString c st = A
     obtain ⟨v, t⟩ := A
     try simp only [raiseError_setPending, setXmlError_setPending, setNullDeref_setPending, setHeaderHash_setPending, setBinaryPool_setPending, addBinaryRefs_setPending, addDeletedObject_setPending, setMeta_setPending, randomUuid_setPending, cipherProcess_setPending, updGroup_setPending, updEntry_setPending, getGroup_setPending, getEntry_setPending, setPending_xmlError, setPending_m_strictMode, setPending_m_randomStream, setPending_m_binaryPool, setPending_m_binaryMap, setPending_m_groups, setPending_m_entries, setPending_m_tmpParent, setPending_rootGroup, setPending_hasError, setPending_group, setPending_entry, setPending_groups, setPending_entries, setPending_setPending]
     repeat' (first | rfl | contradiction | split | simp only [raiseError_setPending, setXmlError_setPending, setNullDeref_setPending, setHeaderHash_setPending, setBinaryPool_setPending, addBinaryRefs_setPending, addDeletedObject_setPending, setMeta_setPending, randomUuid_setPending, cipherProcess_setPending, updGroup_setPending, updEntry_setPending, getGroup_setPending, getEntry_setPending, setPending_xmlError, setPending_m_strictMode, setPending_m_randomStream, setPending_m_binaryPool, setPending_m_binaryMap, setPending_m_groups, setPending_m_entries, setPending_m_tmpParent, setPending_rootGroup, setPending_hasError, setPending_group, setPending_entry, setPending_groups, setPending_entries, setPending_setPending]))

theorem parseMemoryProtectionChild_ins {u : XmlElement} {b : Bool} {c d : XmlElement} (h : Inserted recognizedBy u b c d)
    (a : Unit) (st : Reader) (q : List (List XmlElement)) :
    parseMemoryProtectionChild d (a, st.setPending q) =
      ((parseMemoryProtectionChild c (a, st)).1, (parseMemoryProtectionChild c (a, st)).2.setPending q) := by
  obtain ⟨e1, e2, e3⟩ := inserted_head h
  have ha := inserted_attr h
  have hh := inserted_hasAttribute h
  unfold parseMemoryProtectionChild
  simp only [e1, ha, hh]
  by_cases hN : c.name = "ProtectTitle"
  · have hn : c.name ∉ containerNames ∨ (b = true ∧ c.name = "Binary") :=
      Or.inl (by rw [hN]; decide)
    simp only [hN, String.reduceEq, if_true, if_false, readBool_ins h hn] <;>
      (
       try generalize readBool c st = A0
       try obtain ⟨v0, t0⟩ := A0
       try simp only [raiseError_setPending, setXmlError_setPending, setNullDeref_setPending, setHeaderHash_setPending, setBinaryPool_setPending, addBinaryRefs_setPending, addDeletedObject_setPending, setMeta_setPending, randomUuid_setPending, cipherProcess_setPending, updGroup_setPending, updEntry_setPending, getGroup_setPending, getEntry_setPending, setPending_xmlError, setPending_m_strictMode, setPending_m_randomStream, setPending_m_binaryPool, setPending_m_binaryMap, setPending_m_groups, setPending_m_entries, setPending_m_tmpParent, setPending_rootGroup, setPending_hasError, setPending_group, setPending_entry, setPending_groups, setPending_entries, setPending_setPending]
       repeat' (first | rfl | contradiction | split | simp only [raiseError_setPending, setXmlError_setPending, setNullDeref_setPending, setHeaderHash_setPending, setBinaryPool_setPending, addBinaryRefs_setPending, addDeletedObject_setPending, setMeta_setPending, randomUuid_setPending, cipherProcess_setPending, updGroup_setPending, updEntry_setPending, getGroup_setPending, getEntry_setPending, setPending_xmlError, setPending_m_strictMode, setPending_m_randomStream, setPending_m_binaryPool, setPending_m_binaryMap, setPending_m_groups, setPending_m_entries, setPending_m_tmpParent, setPending_rootGroup, setPending_hasError, setPending_group, setPending_entry, setPending_groups, setPending_entries, setPending_setPending]))
  have n_ProtectTitle := hN
  clear hN
  by_cases hN : c.name = "ProtectUserName"
  · have hn : c.name ∉ containerNames ∨ (b = true ∧ c.name = "Binary") :=
      Or.inl (by rw [hN]; decide)
    simp only [hN, String.reduceEq, if_true, if_false, readBool_ins h hn] <;>
      (
       try generalize readBool c st = A0
       try obtain ⟨v0, t0⟩ := A0
       try simp only [raiseError_setPending, setXmlError_setPending, setNullDeref_setPending, setHeaderHash_setPending, setBinaryPool_setPending, addBinaryRefs_setPending, addDeletedObject_setPending, setMeta_setPending, randomUuid_setPending, cipherProcess_setPending, updGroup_setPending, updEntry_setPending, getGroup_setPending, getEntry_setPending, setPending_xmlError, setPending_m_strictMode, setPending_m_randomStream, setPending_m_binaryPool, setPending_m_binaryMap, setPending_m_groups, setPending_m_entries, setPending_m_tmpParent, setPending_rootGroup, setPending_hasError, setPending_group, setPending_entry, setPending_groups, setPending_entries, setPending_setPending]
       repeat' (first | rfl | contradiction | split | simp only [raiseError_setPending, setXmlError_setPending, setNullDeref_setPending, setHeaderHash_setPending, setBinaryPool_setPending, addBinaryRefs_setPending, addDeletedObject_setPending, setMeta_setPending, randomUuid_setPending, cipherProcess_setPending, updGroup_setPending, updEntry_setPending, getGroup_setPending, getEntry_setPending, setPending_xmlError, setPending_m_strictMode, setPending_m_randomStream, setPending_m_binaryPool, setPending_m_binaryMap, setPending_m_groups, setPending_m_entries, setPending_m_tmpParent, setPending_rootGroup, setPending_hasError, setPending_group, setPending_entry, setPending_groups, setPending_entries, setPending_setPending]))
  have n_ProtectUserName := hN
  clear hN
  by_cases hN : c.name = "ProtectPassword"
  · have hn : c.name ∉ containerNames ∨ (b = true ∧ c.name = "Binary") :=
      Or.inl (by rw [hN]; decide)
    simp only [hN, String.reduceEq, if_true, if_false, readBool_ins h hn] <;>
      (
       try generalize readBool c st = A0
       try obtain ⟨v0, t0⟩ := A0
       try simp only [raiseError_setPending, setXmlError_setPending, setNullDeref_setPending, setHeaderHash_setPending, setBinaryPool_setPending, addBinaryRefs_setPending, addDeletedObject_setPending, setMeta_setPending, randomUuid_setPending, cipherProcess_setPending, updGroup_setPending, updEntry_setPending, getGroup_setPending, getEntry_setPending, setPending_xmlError, setPending_m_strictMode, setPending_m_randomStream, setPending_m_binaryPool, setPending_m_binaryMap, setPending_m_groups, setPending_m_entries, setPending_m_tmpParent, setPending_rootGroup, setPending_hasError, setPending_group, setPending_entry, setPending_groups, setPending_entries, setPending_setPending]
       repeat' (first | rfl | contradiction | split | simp only [raiseError_setPending, setXmlError_setPending, setNullDeref_setPending, setHeaderHash_setPending, setBinaryPool_setPending, addBinaryRefs_setPending, addDeletedObject_setPending, setMeta_setPending, randomUuid_setPending, cipherProcess_setPending, updGroup_setPending, updEntry_setPending, getGroup_setPending, getEntry_setPending, setPending_xmlError, setPending_m_strictMode, setPending_m_randomStream, setPending_m_binaryPool, setPending_m_binaryMap, setPending_m_groups, setPending_m_entries, setPending_m_tmpParent, setPending_rootGroup, setPending_hasError, setPending_group, setPending_entry, setPending_groups, setPending_entries, setPending_setPending]))
  have n_ProtectPassword := hN
  clear hN
  by_cases hN : c.name = "ProtectURL"
  · have hn : c.name ∉ containerNames ∨ (b = true ∧ c.name = "Binary") :=
      Or.inl (by rw [hN]; decide)
    simp only [hN, String.reduceEq, if_true, if_false, readBool_ins h hn] <;>
      (
       try generalize readBool c st = A0
       try obtain ⟨v0, t0⟩ := A0
       try simp only [raiseError_setPending, setXmlError_setPending, setNullDeref_setPending, setHeaderHash_setPending, setBinaryPool_setPending, addBinaryRefs_setPending, addDeletedObject_setPending, setMeta_setPending, randomUuid_setPending, cipherProcess_setPending, updGroup_setPending, updEntry_setPending, getGroup_setPending, getEntry_setPending, setPending_xmlError, setPending_m_strictMode, setPending_m_randomStream, setPending_m_binaryPool, setPending_m_binaryMap, setPending_m_groups, setPending_m_entries, setPending_m_tmpParent, setPending_rootGroup, setPending_hasError, setPending_group, setPending_entry, setPending_groups, setPending_entries, setPending_setPending]
       repeat' (first | rfl | contradiction | split | simp only [raiseError_setPending, setXmlError_setPending, setNullDeref_setPending, setHeaderHash_setPending, setBinaryPool_setPending, addBinaryRefs_setPending, addDeletedObject_setPending, setMeta_setPending, randomUuid_setPending, cipherProcess_setPending, updGroup_setPending, updEntry_setPending, getGroup_setPending, getEntry_setPending, setPending_xmlError, setPending_m_strictMode, setPending_m_randomStream, setPending_m_binaryPool, setPending_m_binaryMap, setPending_m_groups, setPending_m_entries, setPending_m_tmpParent, setPending_rootGroup, setPending_hasError, setPending_group, setPending_entry, setPending_groups, setPending_entries, setPending_setPending]))
  have n_ProtectURL := hN
  clear hN
  by_cases hN : c.name = "ProtectNotes"
  · have hn : c.name ∉ containerNames ∨ (b = true ∧ c.name = "Binary") :=
      Or.inl (by rw [hN]; decide)
    simp only [hN, String.reduceEq, if_true, if_false, readBool_ins h hn] <;>
      (
       try generalize readBool c st = A0
       try obtain ⟨v0, t0⟩ := A0
       try simp only [raiseError_setPending, setXmlError_setPending, setNullDeref_setPending, setHeaderHash_setPending, setBinaryPool_setPending, addBinaryRefs_setPending, addDeletedObject_setPending, setMeta_setPending, randomUuid_setPending, cipherProcess_setPending, updGroup_setPending, updEntry_setPending, getGroup_setPending, getEntry_setPending, setPending_xmlError, setPending_m_strictMode, setPending_m_randomStream, setPending_m_binaryPool, setPending_m_binaryMap, setPending_m_groups, setPending_m_entries, setPending_m_tmpParent, setPending_rootGroup, setPending_hasError, setPending_group, setPending_entry, setPending_groups, setPending_entries, setPending_setPending]
       repeat' (first | rfl | contradiction | split | simp only [raiseError_setPending, setXmlError_setPending, setNullDeref_setPending, setHeaderHash_setPending, setBinaryPool_setPending, addBinaryRefs_setPending, addDeletedObject_setPending, setMeta_setPending, randomUuid_setPending, cipherProcess_setPending, updGroup_setPending, updEntry_setPending, getGroup_setPending, getEntry_setPending, setPending_xmlError, setPending_m_strictMode, setPending_m_randomStream, setPending_m_binaryPool, setPending_m_binaryMap, setPending_m_groups, setPending_m_entries, setPending_m_tmpParent, setPending_rootGroup, setPending_hasError, setPending_group, setPending_entry, setPending_groups, setPending_entries, setPending_setPending]))
  have n_ProtectNotes := hN
  clear hN
  simp only [n_ProtectTitle, n_ProtectUserName, n_ProtectPassword, n_ProtectURL, n_ProtectNotes, if_false, skipChild]

theorem parseMemoryProtectionChild_skip {u : XmlElement} (hu : u.name ∉ recognizedBy "MemoryProtection")
    (s : Unit × Reader) : parseMemoryProtectionChild u s = s := by
  simp [recognizedBy] at hu
  simp [parseMemoryProtectionChild, hu, skipChild]

theorem parseMemoryProtection_ins {u : XmlElement} {b : Bool} {x y : XmlElement} (h : Inserted recognizedBy u b x y)
    (hN : x.name = "MemoryProtection") (st : Reader) (q : List (List XmlElement)) :
    parseMemoryProtection y (st.setPending q) = (parseMemoryProtection x st).setPending q := by
  have hl := inserted_children h
  rw [hN] at hl
  have hl2 : InsertedList recognizedBy u false (recognizedBy "MemoryProtection") x.children y.children := hl
  unfold parseMemoryProtection
  rw [forEachChild_ins parseMemoryProtectionChild (fun hu s => parseMemoryProtectionChild_skip hu s)
    (fun p r a t k hc => parseMemoryProtectionChild_ins hc a t k) hl2 () st q] <;>
    (generalize forEachChild parseMemoryProtectionChild x.children ((), st) = A
     obtain ⟨l, t⟩ := A
     try simp only [raiseError_setPending, setXmlError_setPending, setNullDeref_setPending, setHeaderHash_setPending, setBinaryPool_setPending, addBinaryRefs_setPending, addDeletedObject_setPending, setMeta_setPending, randomUuid_setPending, cipherProcess_setPending, updGroup_setPending, updEntry_setPending, getGroup_setPending, getEntry_setPending, setPending_xmlError, setPending_m_strictMode, setPending_m_randomStream, setPending_m_binaryPool, setPending_m_binaryMap, setPending_m_groups, setPending_m_entries, setPending_m_tmpParent, setPending_rootGroup, setPending_hasError, setPending_group, setPending_entry, setPending_groups, setPending_entries, setPending_setPending]
     repeat' (first | rfl | contradiction | split | simp only [raiseError_setPending, setXmlError_setPending, setNullDeref_setPending, setHeaderHash_setPending, setBinaryPool_setPending, addBinaryRefs_setPending, addDeletedObject_setPending, setMeta_setPending, randomUuid_setPending, cipherProcess_setPending, updGroup_setPending, updEntry_setPending, getGroup_setPending, getEntry_setPending, setPending_xmlError, setPending_m_strictMode, setPending_m_randomStream, setPending_m_binaryPool, setPending_m_binaryMap, setPending_m_groups, setPending_m_entries, setPending_m_tmpParent, setPending_rootGroup, setPending_hasError, setPending_group, setPending_entry, setPending_groups, setPending_entries, setPending_setPending]))

theorem parseIconChild_ins (env : Env) {u : XmlElement} {b : Bool} {c d : XmlElement} (h : Inserted recognizedBy u b c d)
    (a : IconLocals) (st : Reader) (q : List (List XmlElement)) :
    parseIconChild env d (a, st.setPending q) =
      ((parseIconChild env c (a, st)).1, (parseIconChild env c (a, st)).2.setPending q) := by
  obtain ⟨e1, e2, e3⟩ := inserted_head h
  have ha := inserted_attr h
  have hh := inserted_hasAttribute h
  unfold parseIconChild
  simp only [e1, ha, hh]
  by_cases hN : c.name = "UUID"
  · have hn : c.name ∉ containerNames ∨ (b = true ∧ c.name = "Binary") :=
      Or.inl (by rw [hN]; decide)
    simp only [hN, String.reduceEq, if_true, if_false, readUuid_ins env h hn] <;>
      (
       try generalize readUuid env c st = A0
       try obtain ⟨v0, t0⟩ := A0
       try simp only [raiseError_setPending, setXmlError_setPending, setNullDeref_setPending, setHeaderHash_setPending, setBinaryPool_setPending, addBinaryRefs_setPending, addDeletedObject_setPending, setMeta_setPending, randomUuid_setPending, cipherProcess_setPending, updGroup_setPending, updEntry_setPending, getGroup_setPending, getEntry_setPending, setPending_xmlError, setPending_m_strictMode, setPending_m_randomStream, setPending_m_binaryPool, setPending_m_binaryMap, setPending_m_groups, setPending_m_entries, setPending_m_tmpParent, setPending_rootGroup, setPending_hasError, setPending_group, setPending_entry, setPending_groups, setPending_entries, setPending_setPending]
       repeat' (first | rfl | contradiction | split | simp only [raiseError_setPending, setXmlError_setPending, setNullDeref_setPending, setHeaderHash_setPending, setBinaryPool_setPending, addBinaryRefs_setPending, addDeletedObject_setPending, setMeta_setPending, randomUuid_setPending, cipherProcess_setPending, updGroup_setPending, updEntry_setPending, getGroup_setPending, getEntry_setPending, setPending_xmlError, setPending_m_strictMode, setPending_m_randomStream, setPending_m_binaryPool, setPending_m_binaryMap, setPending_m_groups, setPending_m_entries, setPending_m_tmpParent, setPending_rootGroup, setPending_hasError, setPending_group, setPending_entry, setPending_groups, setPending_entries, setPending_setPending]))
  have n_UUID := hN
  clear hN
  by_cases hN : c.name = "Data"
  · have hn : c.name ∉ containerNames ∨ (b = true ∧ c.name = "Binary") :=
      Or.inl (by rw [hN]; decide)
    simp only [hN, String.reduceEq, if_true, if_false, readBinary_ins env h hn] <;>
      (
       try generalize readBinary env c st = A0
       try obtain ⟨v0, t0⟩ := A0
       try simp only [raiseError_setPending, setXmlError_setPending, setNullDeref_setPending, setHeaderHash_setPending, setBinaryPool_setPending, addBinaryRefs_setPending, addDeletedObject_setPending, setMeta_setPending, randomUuid_setPending, cipherProcess_setPending, updGroup_setPending, updEntry_setPending, getGroup_setPending, getEntry_setPending, setPending_xmlError, setPending_m_strictMode, setPending_m_randomStream, setPending_m_binaryPool, setPending_m_binaryMap, setPending_m_groups, setPending_m_entries, setPending_m_tmpParent, setPending_rootGroup, setPending_hasError, setPending_group, setPending_entry, setPending_groups, setPending_entries, setPending_setPending]
       repeat' (first | rfl | contradiction | split | simp only [raiseError_setPending, setXmlError_setPending, setNullDeref_setPending, setHeaderHash_setPending, setBinaryPool_setPending, addBinaryRefs_setPending, addDeletedObject_setPending, setMeta_setPending, randomUuid_setPending, cipherProcess_setPending, updGroup_setPending, updEntry_setPending, getGroup_setPending, getEntry_setPending, setPending_xmlError, setPending_m_strictMode, setPending_m_randomStream, setPending_m_binaryPool, setPending_m_binaryMap, setPending_m_groups, setPending_m_entries, setPending_m_tmpParent, setPending_rootGroup, setPending_hasError, setPending_group, setPending_entry, setPending_groups, setPending_entries, setPending_setPending]))
  have n_Data := hN
  clear hN
  simp only [n_UUID, n_Data, if_false, skipChild]

theorem parseIconChild_skip (env : Env) {u : XmlElement} (hu : u.name ∉ recognizedBy "Icon")
    (s : IconLocals × Reader) : parseIconChild env u s = s := by
  simp [recognizedBy] at hu
  simp [parseIconChild, hu, skipChild]

theorem parseIcon_ins (env : Env) {u : XmlElement} {b : Bool} {x y : XmlElement} (h : Inserted recognizedBy u b x y)
    (hN : x.name = "Icon") (st : Reader) (q : List (List XmlElement)) :
    parseIcon env y (st.setPending q) = (parseIcon env x st).setPending q := by
  have hl := inserted_children h
  rw [hN] at hl
  have hl2 : InsertedList recognizedBy u false (recognizedBy "Icon") x.children y.children := hl
  unfold parseIcon
  rw [forEachChild_ins (parseIconChild env) (fun hu s => parseIconChild_skip env hu s)
    (fun p r a t k hc => parseIconChild_ins env hc a t k) hl2 ⟨Uuid.null, [], false, false⟩ st q] <;>
    (generalize forEachChild (parseIconChild env) x.children (⟨Uuid.null, [], false, false⟩, st) = A
     obtain ⟨l, t⟩ := A
     try simp only [raiseError_setPending, setXmlError_setPending, setNullDeref_setPending, setHeaderHash_setPending, setBinaryPool_setPending, addBinaryRefs_setPending, addDeletedObject_setPending, setMeta_setPending, randomUuid_setPending, cipherProcess_setPending, updGroup_setPending, updEntry_setPending, getGroup_setPending, getEntry_setPending, setPending_xmlError, setPending_m_strictMode, setPending_m_randomStream, setPending_m_binaryPool, setPending_m_binaryMap, setPending_m_groups, setPending_m_entries, setPending_m_tmpParent, setPending_rootGroup, setPending_hasError, setPending_group, setPending_entry, setPending_groups, setPending_entries, setPending_setPending]
     repeat' (first | rfl | contradiction | split | simp only [raiseError_setPending, setXmlError_setPending, setNullDeref_setPending, setHeaderHash_setPending, setBinaryPool_setPending, addBinaryRefs_setPending, addDeletedObject_setPending, setMeta_setPending, randomUuid_setPending, cipherProcess_setPending, updGroup_setPending, updEntry_setPending, getGroup_setPending, getEntry_setPending, setPending_xmlError, setPending_m_strictMode, setPending_m_randomStream, setPending_m_binaryPool, setPending_m_binaryMap, setPending_m_groups, setPending_m_entries, setPending_m_tmpParent, setPending_rootGroup, setPending_hasError, setPending_group, setPending_entry, setPending_groups, setPending_entries, setPending_setPending]))

theorem parseCustomIconsChild_ins (env : Env) {u : XmlElement} {b : Bool} {c d : XmlElement} (h : Inserted recognizedBy u b c d)
    (a : Unit) (st : Reader) (q : List (List XmlElement)) :
    parseCustomIconsChild env d (a, st.setPending q) =
      ((parseCustomIconsChild env c (a, st)).1, (parseCustomIconsChild env c (a, st)).2.setPending q) := by
  obtain ⟨e1, e2, e3⟩ := inserted_head h
  have ha := inserted_attr h
  have hh := inserted_hasAttribute h
  unfold parseCustomIconsChild
  simp only [e1, ha, hh]
  by_cases hN : c.name = "Icon"
  · simp only [hN, String.reduceEq, if_true, if_false, parseIcon_ins env h hN] <;>
      (
       try generalize parseIcon env c st = A0
       try simp only [raiseError_setPending, setXmlError_setPending, setNullDeref_setPending, setHeaderHash_setPending, setBinaryPool_setPending, addBinaryRefs_setPending, addDeletedObject_setPending, setMeta_setPending, randomUuid_setPending, cipherProcess_setPending, updGroup_setPending, updEntry_setPending, getGroup_setPending, getEntry_setPending, setPending_xmlError, setPending_m_strictMode, setPending_m_randomStream, setPending_m_binaryPool, setPending_m_binaryMap, setPending_m_groups, setPending_m_entries, setPending_m_tmpParent, setPending_rootGroup, setPending_hasError, setPending_group, setPending_entry, setPending_groups, setPending_entries, setPending_setPending]
       repeat' (first | rfl | contradiction | split | simp only [raiseError_setPending, setXmlError_setPending, setNullDeref_setPending, setHeaderHash_setPending, setBinaryPool_setPending, addBinaryRefs_setPending, addDeletedObject_setPending, setMeta_setPending, randomUuid_setPending, cipherProcess_setPending, updGroup_setPending, updEntry_setPending, getGroup_setPending, getEntry_setPending, setPending_xmlError, setPending_m_strictMode, setPending_m_randomStream, setPending_m_binaryPool, setPending_m_binaryMap, setPending_m_groups, setPending_m_entries, setPending_m_tmpParent, setPending_rootGroup, setPending_hasError, setPending_group, setPending_entry, setPending_groups, setPending_entries, setPending_setPending]))
  have n_Icon := hN
  clear hN
  simp only [n_Icon, if_false, skipChild]

theorem parseCustomIconsChild_skip (env : Env) {u : XmlElement} (hu : u.name ∉ recognizedBy "CustomIcons")
    (s : Unit × Reader) : parseCustomIconsChild env u s = s := by
  simp [recognizedBy] at hu
  simp [parseCustomIconsChild, hu, skipChild]

theorem parseCustomIcons_ins (env : Env) {u : XmlElement} {b : Bool} {x y : XmlElement} (h : Inserted recognizedBy u b x y)
    (hN : x.name = "CustomIcons") (st : Reader) (q : List (List XmlElement)) :
    parseCustomIcons env y (st.setPending q) = (parseCustomIcons env x st).setPending q := by
  have hl := inserted_children h
  rw [hN] at hl
  have hl2 : InsertedList recognizedBy u false (recognizedBy "CustomIcons") x.children y.children := hl
  unfold parseCustomIcons
  rw [forEachChild_ins (parseCustomIconsChild env) (fun hu s => parseCustomIconsChild_skip env hu s)
    (fun p r a t k hc => parseCustomIconsChild_ins env hc a t k) hl2 () st q] <;>
    (generalize forEachChild (parseCustomIconsChild env) x.children ((), st) = A
     obtain ⟨l, t⟩ := A
     try simp only [raiseError_setPending, setXmlError_setPending, setNullDeref_setPending, setHeaderHash_setPending, setBinaryPool_setPending, addBinaryRefs_setPending, addDeletedObject_setPending, setMeta_setPending, randomUuid_setPending, cipherProcess_setPending, updGroup_setPending, updEntry_setPending, getGroup_setPending, getEntry_setPending, setPending_xmlError, setPending_m_strictMode, setPending_m_randomStream, setPending_m_binaryPool, setPending_m_binaryMap, setPending_m_groups, setPending_m_entries, setPending_m_tmpParent, setPending_rootGroup, setPending_hasError, setPending_group, setPending_entry, setPending_groups, setPending_entries, setPending_setPending]
     repeat' (first | rfl | contradiction | split | simp only [raiseError_setPending, setXmlError_setPending, setNullDeref_setPending, setHeaderHash_setPending, setBinaryPool_setPending, addBinaryRefs_setPending, addDeletedObject_setPending, setMeta_setPending, randomUuid_setPending, cipherProcess_setPending, updGroup_setPending, updEntry_setPending, getGroup_setPending, getEntry_setPending, setPending_xmlError, setPending_m_strictMode, setPending_m_randomStream, setPending_m_binaryPool, setPending_m_binaryMap, setPending_m_groups, setPending_m_entries, setPending_m_tmpParent, setPending_rootGroup, setPending_hasError, setPending_group, setPending_entry, setPending_groups, setPending_entries, setPending_setPending]))

theorem parseBinariesChild_ins (env : Env) {u : XmlElement} {b : Bool} {c d : XmlElement} (h : Inserted recognizedBy u b c d)
    (hb : b = true) (a : Unit) (st : Reader) (q : List (List XmlElement)) :
    parseBinariesChild env d (a, st.setPending q) =
      ((parseBinariesChild env c (a, st)).1, (parseBinariesChild env c (a, st)).2.setPending q) := by
  obtain ⟨e1, e2, e3⟩ := inserted_head h
  have ha := inserted_attr h
  unfold parseBinariesChild
  simp only [e1, ha]
  by_cases hN : c.name = "Binary"
  · have hn : c.name ∉ containerNames ∨ (b = true ∧ c.name = "Binary") := Or.inr ⟨hb, hN⟩
    simp only [hN, ne_eq, not_true_eq_false, if_false, readCompressedBinary_ins env h hn,
      readBinary_ins env h hn]
    generalize readCompressedBinary env c st = A0
    generalize readBinary env c st = A1
    obtain ⟨v0, t0⟩ := A0
    obtain ⟨v1, t1⟩ := A1
    try simp only [raiseError_setPending, setXmlError_setPending, setNullDeref_setPending, setHeaderHash_setPending, setBinaryPool_setPending, addBinaryRefs_setPending, addDeletedObject_setPending, setMeta_setPending, randomUuid_setPending, cipherProcess_setPending, updGroup_setPending, updEntry_setPending, getGroup_setPending, getEntry_setPending, setPending_xmlError, setPending_m_strictMode, setPending_m_randomStream, setPending_m_binaryPool, setPending_m_binaryMap, setPending_m_groups, setPending_m_entries, setPending_m_tmpParent, setPending_rootGroup, setPending_hasError, setPending_group, setPending_entry, setPending_groups, setPending_entries, setPending_setPending]
    all_goals repeat' (first | rfl | contradiction | split | simp only [raiseError_setPending, setXmlError_setPending, setNullDeref_setPending, setHeaderHash_setPending, setBinaryPool_setPending, addBinaryRefs_setPending, addDeletedObject_setPending, setMeta_setPending, randomUuid_setPending, cipherProcess_setPending, updGroup_setPending, updEntry_setPending, getGroup_setPending, getEntry_setPending, setPending_xmlError, setPending_m_strictMode, setPending_m_randomStream, setPending_m_binaryPool, setPending_m_binaryMap, setPending_m_groups, setPending_m_entries, setPending_m_tmpParent, setPending_rootGroup, setPending_hasError, setPending_group, setPending_entry, setPending_groups, setPending_entries, setPending_setPending])
  · simp only [ne_eq, hN, not_false_eq_true, if_true, skipChild]

theorem parseBinariesChild_skip (env : Env) {u : XmlElement}
    (hu : u.name ∉ recognizedBy "Binaries") (s : Unit × Reader) :
    parseBinariesChild env u s = s := by
  simp [recognizedBy] at hu
  simp [parseBinariesChild, hu, skipChild]

theorem parseBinaries_ins (env : Env) {u : XmlElement} {b : Bool} {x y : XmlElement} (h : Inserted recognizedBy u b x y)
    (hN : x.name = "Binaries") (st : Reader) (q : List (List XmlElement)) :
    parseBinaries env y (st.setPending q) = (parseBinaries env x st).setPending q := by
  have hl := inserted_children h
  rw [hN] at hl
  have hl2 : InsertedList recognizedBy u true (recognizedBy "Binaries") x.children y.children := hl
  unfold parseBinaries
  rw [forEachChild_ins (parseBinariesChild env) (fun hu s => parseBinariesChild_skip env hu s)
    (fun p r a t k hc => parseBinariesChild_ins env hc rfl a t k) hl2 () st q] <;>
    (generalize forEachChild (parseBinariesChild env) x.children ((), st) = A
     obtain ⟨l, t⟩ := A
     try simp only [raiseError_setPending, setXmlError_setPending, setNullDeref_setPending, setHeaderHash_setPending, setBinaryPool_setPending, addBinaryRefs_setPending, addDeletedObject_setPending, setMeta_setPending, randomUuid_setPending, cipherProcess_setPending, updGroup_setPending, updEntry_setPending, getGroup_setPending, getEntry_setPending, setPending_xmlError, setPending_m_strictMode, setPending_m_randomStream, setPending_m_binaryPool, setPending_m_binaryMap, setPending_m_groups, setPending_m_entries, setPending_m_tmpParent, setPending_rootGroup, setPending_hasError, setPending_group, setPending_entry, setPending_groups, setPending_entries, setPending_setPending]
     repeat' (first | rfl | contradiction | split | simp only [raiseError_setPending, setXmlError_setPending, setNullDeref_setPending, setHeaderHash_setPending, setBinaryPool_setPending, addBinaryRefs_setPending, addDeletedObject_setPending, setMeta_setPending, randomUuid_setPending, cipherProcess_setPending, updGroup_setPending, updEntry_setPending, getGroup_setPending, getEntry_setPending, setPending_xmlError, setPending_m_strictMode, setPending_m_randomStream, setPending_m_binaryPool, setPending_m_binaryMap, setPending_m_groups, setPending_m_entries, setPending_m_tmpParent, setPending_rootGroup, setPending_hasError, setPending_group, setPending_entry, setPending_groups, setPending_entries, setPending_setPending]))

theorem parseCustomDataItemChild_ins {u : XmlElement} {b : Bool} {c d : XmlElement} (h : Inserted recognizedBy u b c d)
    (a : ItemLocals) (st : Reader) (q : List (List XmlElement)) :
    parseCustomDataItemChild d (a, st.setPending q) =
      ((parseCustomDataItemChild c (a, st)).1, (parseCustomDataItemChild c (a, st)).2.setPending q) := by
  obtain ⟨e1, e2, e3⟩ := inserted_head h
  have ha := inserted_attr h
  have hh := inserted_hasAttribute h
  unfold parseCustomDataItemChild
  simp only [e1, ha, hh]
  by_cases hN : c.name = "Key"
  · have hn : c.name ∉ containerNames ∨ (b = true ∧ c.name = "Binary") :=
      Or.inl (by rw [hN]; decide)
    simp only [hN, String.reduceEq, if_true, if_false, readString_ins h hn] <;>
      (
       try generalize readString c st = A0
       try obtain ⟨v0, t0⟩ := A0
       try simp only [raiseError_setPending, setXmlError_setPending, setNullDeref_setPending, setHeaderHash_setPending, setBinaryPool_setPending, addBinaryRefs_setPending, addDeletedObject_setPending, setMeta_setPending, randomUuid_setPending, cipherProcess_setPending, updGroup_setPending, updEntry_setPending, getGroup_setPending, getEntry_setPending, setPending_xmlError, setPending_m_strictMode, setPending_m_randomStream, setPending_m_binaryPool, setPending_m_binaryMap, setPending_m_groups, setPending_m_entries, setPending_m_tmpParent, setPending_rootGroup, setPending_hasError, setPending_group, setPending_entry, setPending_groups, setPending_entries, setPending_setPending]
       repeat' (first | rfl | contradiction | split | simp only [raiseError_setPending, setXmlError_setPending, setNullDeref_setPending, setHeaderHash_setPending, setBinaryPool_setPending, addBinaryRefs_setPending, addDeletedObject_setPending, setMeta_setPending, randomUuid_setPending, cipherProcess_setPending, updGroup_setPending, updEntry_setPending, getGroup_setPending, getEntry_setPending, setPending_xmlError, setPending_m_strictMode, setPending_m_randomStream, setPending_m_binaryPool, setPending_m_binaryMap, setPending_m_groups, setPending_m_entries, setPending_m_tmpParent, setPending_rootGroup, setPending_hasError, setPending_group, setPending_entry, setPending_groups, setPending_entries, setPending_setPending]))
  have n_Key := hN
  clear hN
  by_cases hN : c.name = "Value"
  · have hn : c.name ∉ containerNames ∨ (b = true ∧ c.name = "Binary") :=
      Or.inl (by rw [hN]; decide)
    simp only [hN, String.reduceEq, if_true, if_false, readString_ins h hn] <;>
      (
       try generalize readString c st = A0
       try obtain ⟨v0, t0⟩ := A0
       try simp only [raiseError_setPending, setXmlError_setPending, setNullDeref_setPending, setHeaderHash_setPending, setBinaryPool_setPending, addBinaryRefs_setPending, addDeletedObject_setPending, setMeta_setPending, randomUuid_setPending, cipherProcess_setPending, updGroup_setPending, updEntry_setPending, getGroup_setPending, getEntry_setPending, setPending_xmlError, setPending_m_strictMode, setPending_m_randomStream, setPending_m_binaryPool, setPending_m_binaryMap, setPending_m_groups, setPending_m_entries, setPending_m_tmpParent, setPending_rootGroup, setPending_hasError, setPending_group, setPending_entry, setPending_groups, setPending_entries, setPending_setPending]
       repeat' (first | rfl | contradiction | split | simp only [raiseError_setPending, setXmlError_setPending, setNullDeref_setPending, setHeaderHash_setPending, setBinaryPool_setPending, addBinaryRefs_setPending, addDeletedObject_setPending, setMeta_setPending, randomUuid_setPending, cipherProcess_setPending, updGroup_setPending, updEntry_setPending, getGroup_setPending, getEntry_setPending, setPending_xmlError, setPending_m_strictMode, setPending_m_randomStream, setPending_m_binaryPool, setPending_m_binaryMap, setPending_m_groups, setPending_m_entries, setPending_m_tmpParent, setPending_rootGroup, setPending_hasError, setPending_group, setPending_entry, setPending_groups, setPending_entries, setPending_setPending]))
  have n_Value := hN
  clear hN
  simp only [n_Key, n_Value, if_false, skipChild]

theorem parseCustomDataItemChild_skip {u : XmlElement} (hu : u.name ∉ recognizedBy "Item")
    (s : ItemLocals × Reader) : parseCustomDataItemChild u s = s := by
  simp [recognizedBy] at hu
  simp [parseCustomDataItemChild, hu, skipChild]

theorem parseCustomDataItem_ins {u : XmlElement} {b : Bool} {x y : XmlElement} (h : Inserted recognizedBy u b x y)
    (hN : x.name = "Item") (st : Reader) (q : List (List XmlElement)) :
    parseCustomDataItem y (st.setPending q) = (parseCustomDataItem x st).setPending q := by
  have hl := inserted_children h
  rw [hN] at hl
  have hl2 : InsertedList recognizedBy u false (recognizedBy "Item") x.children y.children := hl
  unfold parseCustomDataItem
  rw [forEachChild_ins parseCustomDataItemChild (fun hu s => parseCustomDataItemChild_skip hu s)
    (fun p r a t k hc => parseCustomDataItemChild_ins hc a t k) hl2 ⟨"", "", false, false⟩ st q] <;>
    (generalize forEachChild parseCustomDataItemChild x.children (⟨"", "", false, false⟩, st) = A
     obtain ⟨l, t⟩ := A
     try simp only [raiseError_setPending, setXmlError_setPending, setNullDeref_setPending, setHeaderHash_setPending, setBinaryPool_setPending, addBinaryRefs_setPending, addDeletedObject_setPending, setMeta_setPending, randomUuid_setPending, cipherProcess_setPending, updGroup_setPending, updEntry_setPending, getGroup_setPending, getEntry_setPending, setPending_xmlError, setPending_m_strictMode, setPending_m_randomStream, setPending_m_binaryPool, setPending_m_binaryMap, setPending_m_groups, setPending_m_entries, setPending_m_tmpParent, setPending_rootGroup, setPending_hasError, setPending_group, setPending_entry, setPending_groups, setPending_entries, setPending_setPending]
     repeat' (first | rfl | contradiction | split | simp only [raiseError_setPending, setXmlError_setPending, setNullDeref_setPending, setHeaderHash_setPending, setBinaryPool_setPending, addBinaryRefs_setPending, addDeletedObject_setPending, setMeta_setPending, randomUuid_setPending, cipherProcess_setPending, updGroup_setPending, updEntry_setPending, getGroup_setPending, getEntry_setPending, setPending_xmlError, setPending_m_strictMode, setPending_m_randomStream, setPending_m_binaryPool, setPending_m_binaryMap, setPending_m_groups, setPending_m_entries, setPending_m_tmpParent, setPending_rootGroup, setPending_hasError, setPending_group, setPending_entry, setPending_groups, setPending_entries, setPending_setPending]))

theorem parseCustomDataChild_ins {u : XmlElement} {b : Bool} {c d : XmlElement} (h : Inserted recognizedBy u b c d)
    (a : Unit) (st : Reader) (q : List (List XmlElement)) :
    parseCustomDataChild d (a, st.setPending q) =
      ((parseCustomDataChild c (a, st)).1, (parseCustomDataChild c (a, st)).2.setPending q) := by
  obtain ⟨e1, e2, e3⟩ := inserted_head h
  have ha := inserted_attr h
  have hh := inserted_hasAttribute h
  unfold parseCustomDataChild
  simp only [e1, ha, hh]
  by_cases hN : c.name = "Item"
  · simp only [hN, String.reduceEq, if_true, if_false, parseCustomDataItem_ins h hN] <;>
      (
       try generalize parseCustomDataItem c st = A0
       try simp only [raiseError_setPending, setXmlError_setPending, setNullDeref_setPending, setHeaderHash_setPending, setBinaryPool_setPending, addBinaryRefs_setPending, addDeletedObject_setPending, setMeta_setPending, randomUuid_setPending, cipherProcess_setPending, updGroup_setPending, updEntry_setPending, getGroup_setPending, getEntry_setPending, setPending_xmlError, setPending_m_strictMode, setPending_m_randomStream, setPending_m_binaryPool, setPending_m_binaryMap, setPending_m_groups, setPending_m_entries, setPending_m_tmpParent, setPending_rootGroup, setPending_hasError, setPending_group, setPending_entry, setPending_groups, setPending_entries, setPending_setPending]
       repeat' (first | rfl | contradiction | split | simp only [raiseError_setPending, setXmlError_setPending, setNullDeref_setPending, setHeaderHash_setPending, setBinaryPool_setPending, addBinaryRefs_setPending, addDeletedObject_setPending, setMeta_setPending, randomUuid_setPending, cipherProcess_setPending, updGroup_setPending, updEntry_setPending, getGroup_setPending, getEntry_setPending, setPending_xmlError, setPending_m_strictMode, setPending_m_randomStream, setPending_m_binaryPool, setPending_m_binaryMap, setPending_m_groups, setPending_m_entries, setPending_m_tmpParent, setPending_rootGroup, setPending_hasError, setPending_group, setPending_entry, setPending_groups, setPending_entries, setPending_setPending]))
  have n_Item := hN
  clear hN
  simp only [n_Item, if_false, skipChild]

theorem parseCustomDataChild_skip {u : XmlElement} (hu : u.name ∉ recognizedBy "CustomData")
    (s : Unit × Reader) : parseCustomDataChild u s = s := by
  simp [recognizedBy] at hu
  simp [parseCustomDataChild, hu, skipChild]

theorem parseCustomData_ins {u : XmlElement} {b : Bool} {x y : XmlElement} (h : Inserted recognizedBy u b x y)
    (hN : x.name = "CustomData") (st : Reader) (q : List (List XmlElement)) :
    parseCustomData y (st.setPending q) = (parseCustomData x st).setPending q := by
  have hl := inserted_children h
  rw [hN] at hl
  have hl2 : InsertedList recognizedBy u false (recognizedBy "CustomData") x.children y.children := hl
  unfold parseCustomData
  rw [forEachChild_ins parseCustomDataChild (fun hu s => parseCustomDataChild_skip hu s)
    (fun p r a t k hc => parseCustomDataChild_ins hc a t k) hl2 () st q] <;>
    (generalize forEachChild parseCustomDataChild x.children ((), st) = A
     obtain ⟨l, t⟩ := A
     try simp only [raiseError_setPending, setXmlError_setPending, setNullDeref_setPending, setHeaderHash_setPending, setBinaryPool_setPending, addBinaryRefs_setPending, addDeletedObject_setPending, setMeta_setPending, randomUuid_setPending, cipherProcess_setPending, updGroup_setPending, updEntry_setPending, getGroup_setPending, getEntry_setPending, setPending_xmlError, setPending_m_strictMode, setPending_m_randomStream, setPending_m_binaryPool, setPending_m_binaryMap, setPending_m_groups, setPending_m_entries, setPending_m_tmpParent, setPending_rootGroup, setPending_hasError, setPending_group, setPending_entry, setPending_groups, setPending_entries, setPending_setPending]
     repeat' (first | rfl | contradiction | split | simp only [raiseError_setPending, setXmlError_setPending, setNullDeref_setPending, setHeaderHash_setPending, setBinaryPool_setPending, addBinaryRefs_setPending, addDeletedObject_setPending, setMeta_setPending, randomUuid_setPending, cipherProcess_setPending, updGroup_setPending, updEntry_setPending, getGroup_setPending, getEntry_setPending, setPending_xmlError, setPending_m_strictMode, setPending_m_randomStream, setPending_m_binaryPool, setPending_m_binaryMap, setPending_m_groups, setPending_m_entries, setPending_m_tmpParent, setPending_rootGroup, setPending_hasError, setPending_group, setPending_entry, setPending_groups, setPending_entries, setPending_setPending]))

theorem parseMetaChild_ins (env : Env) {u : XmlElement} {b : Bool} {c d : XmlElement} (h : Inserted recognizedBy u b c d)
    (st : Reader) (q : List (List XmlElement)) :
    parseMetaChild env d (st.setPending q) = (parseMetaChild env c st).setPending q := by
  obtain ⟨e1, e2, e3⟩ := inserted_head h
  have ha := inserted_attr h
  have hh := inserted_hasAttribute h
  unfold parseMetaChild
  simp only [e1, ha, hh]
  by_cases hN : c.name = "Generator"
  · have hn : c.name ∉ containerNames ∨ (b = true ∧ c.name = "Binary") :=
      Or.inl (by rw [hN]; decide)
    simp only [hN, String.reduceEq, if_true, if_false, readString_ins h hn] <;>
      (
       try generalize readString c st = A0
       try obtain ⟨v0, t0⟩ := A0
       try simp only [raiseError_setPending, setXmlError_setPending, setNullDeref_setPending, setHeaderHash_setPending, setBinaryPool_setPending, addBinaryRefs_setPending, addDeletedObject_setPending, setMeta_setPending, randomUuid_setPending, cipherProcess_setPending, updGroup_setPending, updEntry_setPending, getGroup_setPending, getEntry_setPending, setPending_xmlError, setPending_m_strictMode, setPending_m_randomStream, setPending_m_binaryPool, setPending_m_binaryMap, setPending_m_groups, setPending_m_entries, setPending_m_tmpParent, setPending_rootGroup, setPending_hasError, setPending_group, setPending_entry, setPending_groups, setPending_entries, setPending_setPending]
       repeat' (first | rfl | contradiction | split | simp only [raiseError_setPending, setXmlError_setPending, setNullDeref_setPending, setHeaderHash_setPending, setBinaryPool_setPending, addBinaryRefs_setPending, addDeletedObject_setPending, setMeta_setPending, randomUuid_setPending, cipherProcess_setPending, updGroup_setPending, updEntry_setPending, getGroup_setPending, getEntry_setPending, setPending_xmlError, setPending_m_strictMode, setPending_m_randomStream, setPending_m_binaryPool, setPending_m_binaryMap, setPending_m_groups, setPending_m_entries, setPending_m_tmpParent, setPending_rootGroup, setPending_hasError, setPending_group, setPending_entry, setPending_groups, setPending_entries, setPending_setPending]))
  have n_Generator := hN
  clear hN
  by_cases hN : c.name = "HeaderHash"
  · have hn : c.name ∉ containerNames ∨ (b = true ∧ c.name = "Binary") :=
      Or.inl (by rw [hN]; decide)
    simp only [hN, String.reduceEq, if_true, if_false, readBinary_ins env h hn] <;>
      (
       try generalize readBinary env c st = A0
       try obtain ⟨v0, t0⟩ := A0
       try simp only [raiseError_setPending, setXmlError_setPending, setNullDeref_setPending, setHeaderHash_setPending, setBinaryPool_setPending, addBinaryRefs_setPending, addDeletedObject_setPending, setMeta_setPending, randomUuid_setPending, cipherProcess_setPending, updGroup_setPending, updEntry_setPending, getGroup_setPending, getEntry_setPending, setPending_xmlError, setPending_m_strictMode, setPending_m_randomStream, setPending_m_binaryPool, setPending_m_binaryMap, setPending_m_groups, setPending_m_entries, setPending_m_tmpParent, setPending_rootGroup, setPending_hasError, setPending_group, setPending_entry, setPending_groups, setPending_entries, setPending_setPending]
       repeat' (first | rfl | contradiction | split | simp only [raiseError_setPending, setXmlError_setPending, setNullDeref_setPending, setHeaderHash_setPending, setBinaryPool_setPending, addBinaryRefs_setPending, addDeletedObject_setPending, setMeta_setPending, randomUuid_setPending, cipherProcess_setPending, updGroup_setPending, updEntry_setPending, getGroup_setPending, getEntry_setPending, setPending_xmlError, setPending_m_strictMode, setPending_m_randomStream, setPending_m_binaryPool, setPending_m_binaryMap, setPending_m_groups, setPending_m_entries, setPending_m_tmpParent, setPending_rootGroup, setPending_hasError, setPending_group, setPending_entry, setPending_groups, setPending_entries, setPending_setPending]))
  have n_HeaderHash := hN
  clear hN
  by_cases hN : c.name = "DatabaseName"
  · have hn : c.name ∉ containerNames ∨ (b = true ∧ c.name = "Binary") :=
      Or.inl (by rw [hN]; decide)
    simp only [hN, String.reduceEq, if_true, if_false, readString_ins h hn] <;>
      (
       try generalize readString c st = A0
       try obtain ⟨v0, t0⟩ := A0
       try simp only [raiseError_setPending, setXmlError_setPending, setNullDeref_setPending, setHeaderHash_setPending, setBinaryPool_setPending, addBinaryRefs_setPending, addDeletedObject_setPending, setMeta_setPending, randomUuid_setPending, cipherProcess_setPending, updGroup_setPending, updEntry_setPending, getGroup_setPending, getEntry_setPending, setPending_xmlError, setPending_m_strictMode, setPending_m_randomStream, setPending_m_binaryPool, setPending_m_binaryMap, setPending_m_groups, setPending_m_entries, setPending_m_tmpParent, setPending_rootGroup, setPending_hasError, setPending_group, setPending_entry, setPending_groups, setPending_entries, setPending_setPending]
       repeat' (first | rfl | contradiction | split | simp only [raiseError_setPending, setXmlError_setPending, setNullDeref_setPending, setHeaderHash_setPending, setBinaryPool_setPending, addBinaryRefs_setPending, addDeletedObject_setPending, setMeta_setPending, randomUuid_setPending, cipherProcess_setPending, updGroup_setPending, updEntry_setPending, getGroup_setPending, getEntry_setPending, setPending_xmlError, setPending_m_strictMode, setPending_m_randomStream, setPending_m_binaryPool, setPending_m_binaryMap, setPending_m_groups, setPending_m_entries, setPending_m_tmpParent, setPending_rootGroup, setPending_hasError, setPending_group, setPending_entry, setPending_groups, setPending_entries, setPending_setPending]))
  have n_DatabaseName := hN
  clear hN
  by_cases hN : c.name = "DatabaseNameChanged"
  · have hn : c.name ∉ containerNames ∨ (b = true ∧ c.name = "Binary") :=
      Or.inl (by rw [hN]; decide)
    simp only [hN, String.reduceEq, if_true, if_false, readDateTime_ins env h hn] <;>
      (
       try generalize readDateTime env c st = A0
       try obtain ⟨v0, t0⟩ := A0
       try simp only [raiseError_setPending, setXmlError_setPending, setNullDeref_setPending, setHeaderHash_setPending, setBinaryPool_setPending, addBinaryRefs_setPending, addDeletedObject_setPending, setMeta_setPending, randomUuid_setPending, cipherProcess_setPending, updGroup_setPending, updEntry_setPending, getGroup_setPending, getEntry_setPending, setPending_xmlError, setPending_m_strictMode, setPending_m_randomStream, setPending_m_binaryPool, setPending_m_binaryMap, setPending_m_groups, setPending_m_entries, setPending_m_tmpParent, setPending_rootGroup, setPending_hasError, setPending_group, setPending_entry, setPending_groups, setPending_entries, setPending_setPending]
       repeat' (first | rfl | contradiction | split | simp only [raiseError_setPending, setXmlError_setPending, setNullDeref_setPending, setHeaderHash_setPending, setBinaryPool_setPending, addBinaryRefs_setPending, addDeletedObject_setPending, setMeta_setPending, randomUuid_setPending, cipherProcess_setPending, updGroup_setPending, updEntry_setPending, getGroup_setPending, getEntry_setPending, setPending_xmlError, setPending_m_strictMode, setPending_m_randomStream, setPending_m_binaryPool, setPending_m_binaryMap, setPending_m_groups, setPending_m_entries, setPending_m_tmpParent, setPending_rootGroup, setPending_hasError, setPending_group, setPending_entry, setPending_groups, setPending_entries, setPending_setPending]))
  have n_DatabaseNameChanged := hN
  clear hN
  by_cases hN : c.name = "DatabaseDescription"
  · have hn : c.name ∉ containerNames ∨ (b = true ∧ c.name = "Binary") :=
      Or.inl (by rw [hN]; decide)
    simp only [hN, String.reduceEq, if_true, if_false, readString_ins h hn] <;>
      (
       try generalize readString c st = A0
       try obtain ⟨v0, t0⟩ := A0
       try simp only [raiseError_setPending, setXmlError_setPending, setNullDeref_setPending, setHeaderHash_setPending, setBinaryPool_setPending, addBinaryRefs_setPending, addDeletedObject_setPending, setMeta_setPending, randomUuid_setPending, cipherProcess_setPending, updGroup_setPending, updEntry_setPending, getGroup_setPending, getEntry_setPending, setPending_xmlError, setPending_m_strictMode, setPending_m_randomStream, setPending_m_binaryPool, setPending_m_binaryMap, setPending_m_groups, setPending_m_entries, setPending_m_tmpParent, setPending_rootGroup, setPending_hasError, setPending_group, setPending_entry, setPending_groups, setPending_entries, setPending_setPending]
       repeat' (first | rfl | contradiction | split | simp only [raiseError_setPending, setXmlError_setPending, setNullDeref_setPending, setHeaderHash_setPending, setBinaryPool_setPending, addBinaryRefs_setPending, addDeletedObject_setPending, setMeta_setPending, randomUuid_setPending, cipherProcess_setPending, updGroup_setPending, updEntry_setPending, getGroup_setPending, getEntry_setPending, setPending_xmlError, setPending_m_strictMode, setPending_m_randomStream, setPending_m_binaryPool, setPending_m_binaryMap, setPending_m_groups, setPending_m_entries, setPending_m_tmpParent, setPending_rootGroup, setPending_hasError, setPending_group, setPending_entry, setPending_groups, setPending_entries, setPending_setPending]))
  have n_DatabaseDescription := hN
  clear hN
  by_cases hN : c.name = "DatabaseDescriptionChanged"
  · have hn : c.name ∉ containerNames ∨ (b = true ∧ c.name = "Binary") :=
      Or.inl (by rw [hN]; decide)
    simp only [hN, String.reduceEq, if_true, if_false, readDateTime_ins env h hn] <;>
      (
       try generalize readDateTime env c st = A0
       try obtain ⟨v0, t0⟩ := A0
       try simp only [raiseError_setPending, setXmlError_setPending, setNullDeref_setPending, setHeaderHash_setPending, setBinaryPool_setPending, addBinaryRefs_setPending, addDeletedObject_setPending, setMeta_setPending, randomUuid_setPending, cipherProcess_setPending, updGroup_setPending, updEntry_setPending, getGroup_setPending, getEntry_setPending, setPending_xmlError, setPending_m_strictMode, setPending_m_randomStream, setPending_m_binaryPool, setPending_m_binaryMap, setPending_m_groups, setPending_m_entries, setPending_m_tmpParent, setPending_rootGroup, setPending_hasError, setPending_group, setPending_entry, setPending_groups, setPending_entries, setPending_setPending]
       repeat' (first | rfl | contradiction | split | simp only [raiseError_setPending, setXmlError_setPending, setNullDeref_setPending, setHeaderHash_setPending, setBinaryPool_setPending, addBinaryRefs_setPending, addDeletedObject_setPending, setMeta_setPending, randomUuid_setPending, cipherProcess_setPending, updGroup_setPending, updEntry_setPending, getGroup_setPending, getEntry_setPending, setPending_xmlError, setPending_m_strictMode, setPending_m_randomStream, setPending_m_binaryPool, setPending_m_binaryMap, setPending_m_groups, setPending_m_entries, setPending_m_tmpParent, setPending_rootGroup, setPending_hasError, setPending_group, setPending_entry, setPending_groups, setPending_entries, setPending_setPending]))
  have n_DatabaseDescriptionChanged := hN
  clear hN
  by_cases hN : c.name = "DefaultUserName"
  · have hn : c.name ∉ containerNames ∨ (b = true ∧ c.name = "Binary") :=
      Or.inl (by rw [hN]; decide)
    simp only [hN, String.reduceEq, if_true, if_false, readString_ins h hn] <;>
      (
       try generalize readString c st = A0
       try obtain ⟨v0, t0⟩ := A0
       try simp only [raiseError_setPending, setXmlError_setPending, setNullDeref_setPending, setHeaderHash_setPending, setBinaryPool_setPending, addBinaryRefs_setPending, addDeletedObject_setPending, setMeta_setPending, randomUuid_setPending, cipherProcess_setPending, updGroup_setPending, updEntry_setPending, getGroup_setPending, getEntry_setPending, setPending_xmlError, setPending_m_strictMode, setPending_m_randomStream, setPending_m_binaryPool, setPending_m_binaryMap, setPending_m_groups, setPending_m_entries, setPending_m_tmpParent, setPending_rootGroup, setPending_hasError, setPending_group, setPending_entry, setPending_groups, setPending_entries, setPending_setPending]
       repeat' (first | rfl | contradiction | split | simp only [raiseError_setPending, setXmlError_setPending, setNullDeref_setPending, setHeaderHash_setPending, setBinaryPool_setPending, addBinaryRefs_setPending, addDeletedObject_setPending, setMeta_setPending, randomUuid_setPending, cipherProcess_setPending, updGroup_setPending, updEntry_setPending, getGroup_setPending, getEntry_setPending, setPending_xmlError, setPending_m_strictMode, setPending_m_randomStream, setPending_m_binaryPool, setPending_m_binaryMap, setPending_m_groups, setPending_m_entries, setPending_m_tmpParent, setPending_rootGroup, setPending_hasError, setPending_group, setPending_entry, setPending_groups, setPending_entries, setPending_setPending]))
  have n_DefaultUserName := hN
  clear hN
  by_cases hN : c.name = "DefaultUserNameChanged"
  · have hn : c.name ∉ containerNames ∨ (b = true ∧ c.name = "Binary") :=
      Or.inl (by rw [hN]; decide)
    simp only [hN, String.reduceEq, if_true, if_false, readDateTime_ins env h hn] <;>
      (
       try generalize readDateTime env c st = A0
       try obtain ⟨v0, t0⟩ := A0
       try simp only [raiseError_setPending, setXmlError_setPending, setNullDeref_setPending, setHeaderHash_setPending, setBinaryPool_setPending, addBinaryRefs_setPending, addDeletedObject_setPending, setMeta_setPending, randomUuid_setPending, cipherProcess_setPending, updGroup_setPending, updEntry_setPending, getGroup_setPending, getEntry_setPending, setPending_xmlError, setPending_m_strictMode, setPending_m_randomStream, setPending_m_binaryPool, setPending_m_binaryMap, setPending_m_groups, setPending_m_entries, setPending_m_tmpParent, setPending_rootGroup, setPending_hasError, setPending_group, setPending_entry, setPending_groups, setPending_entries, setPending_setPending]
       repeat' (first | rfl | contradiction | split | simp only [raiseError_setPending, setXmlError_setPending, setNullDeref_setPending, setHeaderHash_setPending, setBinaryPool_setPending, addBinaryRefs_setPending, addDeletedObject_setPending, setMeta_setPending, randomUuid_setPending, cipherProcess_setPending, updGroup_setPending, updEntry_setPending, getGroup_setPending, getEntry_setPending, setPending_xmlError, setPending_m_strictMode, setPending_m_randomStream, setPending_m_binaryPool, setPending_m_binaryMap, setPending_m_groups, setPending_m_entries, setPending_m_tmpParent, setPending_rootGroup, setPending_hasError, setPending_group, setPending_entry, setPending_groups, setPending_entries, setPending_setPending]))
  have n_DefaultUserNameChanged := hN
  clear hN
  by_cases hN : c.name = "MaintenanceHistoryDays"
  · have hn : c.name ∉ containerNames ∨ (b = true ∧ c.name = "Binary") :=
      Or.inl (by rw [hN]; decide)
    simp only [hN, String.reduceEq, if_true, if_false, readNumber_ins env h hn] <;>
      (
       try generalize readNumber env c st = A0
       try obtain ⟨v0, t0⟩ := A0
       try simp only [raiseError_setPending, setXmlError_setPending, setNullDeref_setPending, setHeaderHash_setPending, setBinaryPool_setPending, addBinaryRefs_setPending, addDeletedObject_setPending, setMeta_setPending, randomUuid_setPending, cipherProcess_setPending, updGroup_setPending, updEntry_setPending, getGroup_setPending, getEntry_setPending, setPending_xmlError, setPending_m_strictMode, setPending_m_randomStream, setPending_m_binaryPool, setPending_m_binaryMap, setPending_m_groups, setPending_m_entries, setPending_m_tmpParent, setPending_rootGroup, setPending_hasError, setPending_group, setPending_entry, setPending_groups, setPending_entries, setPending_setPending]
       repeat' (first | rfl | contradiction | split | simp only [raiseError_setPending, setXmlError_setPending, setNullDeref_setPending, setHeaderHash_setPending, setBinaryPool_setPending, addBinaryRefs_setPending, addDeletedObject_setPending, setMeta_setPending, randomUuid_setPending, cipherProcess_setPending, updGroup_setPending, updEntry_setPending, getGroup_setPending, getEntry_setPending, setPending_xmlError, setPending_m_strictMode, setPending_m_randomStream, setPending_m_binaryPool, setPending_m_binaryMap, setPending_m_groups, setPending_m_entries, setPending_m_tmpParent, setPending_rootGroup, setPending_hasError, setPending_group, setPending_entry, setPending_groups, setPending_entries, setPending_setPending]))
  have n_MaintenanceHistoryDays := hN
  clear hN
  by_cases hN : c.name = "Color"
  · have hn : c.name ∉ containerNames ∨ (b = true ∧ c.name = "Binary") :=
      Or.inl (by rw [hN]; decide)
    simp only [hN, String.reduceEq, if_true, if_false, readColor_ins env h hn] <;>
      (
       try generalize readColor env c st = A0
       try obtain ⟨v0, t0⟩ := A0
       try simp only [raiseError_setPending, setXmlError_setPending, setNullDeref_setPending, setHeaderHash_setPending, setBinaryPool_setPending, addBinaryRefs_setPending, addDeletedObject_setPending, setMeta_setPending, randomUuid_setPending, cipherProcess_setPending, updGroup_setPending, updEntry_setPending, getGroup_setPending, getEntry_setPending, setPending_xmlError, setPending_m_strictMode, setPending_m_randomStream, setPending_m_binaryPool, setPending_m_binaryMap, setPending_m_groups, setPending_m_entries, setPending_m_tmpParent, setPending_rootGroup, setPending_hasError, setPending_group, setPending_entry, setPending_groups, setPending_entries, setPending_setPending]
       repeat' (first | rfl | contradiction | split | simp only [raiseError_setPending, setXmlError_setPending, setNullDeref_setPending, setHeaderHash_setPending, setBinaryPool_setPending, addBinaryRefs_setPending, addDeletedObject_setPending, setMeta_setPending, randomUuid_setPending, cipherProcess_setPending, updGroup_setPending, updEntry_setPending, getGroup_setPending, getEntry_setPending, setPending_xmlError, setPending_m_strictMode, setPending_m_randomStream, setPending_m_binaryPool, setPending_m_binaryMap, setPending_m_groups, setPending_m_entries, setPending_m_tmpParent, setPending_rootGroup, setPending_hasError, setPending_group, setPending_entry, setPending_groups, setPending_entries, setPending_setPending]))
  have n_Color := hN
  clear hN
  by_cases hN : c.name = "MasterKeyChanged"
  · have hn : c.name ∉ containerNames ∨ (b = true ∧ c.name = "Binary") :=
      Or.inl (by rw [hN]; decide)
    simp only [hN, String.reduceEq, if_true, if_false, readDateTime_ins env h hn] <;>
      (
       try generalize readDateTime env c st = A0
       try obtain ⟨v0, t0⟩ := A0
       try simp only [raiseError_setPending, setXmlError_setPending, setNullDeref_setPending, setHeaderHash_setPending, setBinaryPool_setPending, addBinaryRefs_setPending, addDeletedObject_setPending, setMeta_setPending, randomUuid_setPending, cipherProcess_setPending, updGroup_setPending, updEntry_setPending, getGroup_setPending, getEntry_setPending, setPending_xmlError, setPending_m_strictMode, setPending_m_randomStream, setPending_m_binaryPool, setPending_m_binaryMap, setPending_m_groups, setPending_m_entries, setPending_m_tmpParent, setPending_rootGroup, setPending_hasError, setPending_group, setPending_entry, setPending_groups, setPending_entries, setPending_setPending]
       repeat' (first | rfl | contradiction | split | simp only [raiseError_setPending, setXmlError_setPending, setNullDeref_setPending, setHeaderHash_setPending, setBinaryPool_setPending, addBinaryRefs_setPending, addDeletedObject_setPending, setMeta_setPending, randomUuid_setPending, cipherProcess_setPending, updGroup_setPending, updEntry_setPending, getGroup_setPending, getEntry_setPending, setPending_xmlError, setPending_m_strictMode, setPending_m_randomStream, setPending_m_binaryPool, setPending_m_binaryMap, setPending_m_groups, setPending_m_entries, setPending_m_tmpParent, setPending_rootGroup, setPending_hasError, setPending_group, setPending_entry, setPending_groups, setPending_entries, setPending_setPending]))
  have n_MasterKeyChanged := hN
  clear hN
  by_cases hN : c.name = "MasterKeyChangeRec"
  · have hn : c.name ∉ containerNames ∨ (b = true ∧ c.name = "Binary") :=
      Or.inl (by rw [hN]; decide)
    simp only [hN, String.reduceEq, if_true, if_false, readNumber_ins env h hn] <;>
      (
       try generalize readNumber env c st = A0
       try obtain ⟨v0, t0⟩ := A0
       try simp only [raiseError_setPending, setXmlError_setPending, setNullDeref_setPending, setHeaderHash_setPending, setBinaryPool_setPending, addBinaryRefs_setPending, addDeletedObject_setPending, setMeta_setPending, randomUuid_setPending, cipherProcess_setPending, updGroup_setPending, updEntry_setPending, getGroup_setPending, getEntry_setPending, setPending_xmlError, setPending_m_strictMode, setPending_m_randomStream, setPending_m_binaryPool, setPending_m_binaryMap, setPending_m_groups, setPending_m_entries, setPending_m_tmpParent, setPending_rootGroup, setPending_hasError, setPending_group, setPending_entry, setPending_groups, setPending_entries, setPending_setPending]
       repeat' (first | rfl | contradiction | split | simp only [raiseError_setPending, setXmlError_setPending, setNullDeref_setPending, setHeaderHash_setPending, setBinaryPool_setPending, addBinaryRefs_setPending, addDeletedObject_setPending, setMeta_setPending, randomUuid_setPending, cipherProcess_setPending, updGroup_setPending, updEntry_setPending, getGroup_setPending, getEntry_setPending, setPending_xmlError, setPending_m_strictMode, setPending_m_randomStream, setPending_m_binaryPool, setPending_m_binaryMap, setPending_m_groups, setPending_m_entries, setPending_m_tmpParent, setPending_rootGroup, setPending_hasError, setPending_group, setPending_entry, setPending_groups, setPending_entries, setPending_setPending]))
  have n_MasterKeyChangeRec := hN
  clear hN
  by_cases hN : c.name = "MasterKeyChangeForce"
  · have hn : c.name ∉ containerNames ∨ (b = true ∧ c.name = "Binary") :=
      Or.inl (by rw [hN]; decide)
    simp only [hN, String.reduceEq, if_true, if_false, readNumber_ins env h hn] <;>
      (
       try generalize readNumber env c st = A0
       try obtain ⟨v0, t0⟩ := A0
       try simp only [raiseError_setPending, setXmlError_setPending, setNullDeref_setPending, setHeaderHash_setPending, setBinaryPool_setPending, addBinaryRefs_setPending, addDeletedObject_setPending, setMeta_setPending, randomUuid_setPending, cipherProcess_setPending, updGroup_setPending, updEntry_setPending, getGroup_setPending, getEntry_setPending, setPending_xmlError, setPending_m_strictMode, setPending_m_randomStream, setPending_m_binaryPool, setPending_m_binaryMap, setPending_m_groups, setPending_m_entries, setPending_m_tmpParent, setPending_rootGroup, setPending_hasError, setPending_group, setPending_entry, setPending_groups, setPending_entries, setPending_setPending]
       repeat' (first | rfl | contradiction | split | simp only [raiseError_setPending, setXmlError_setPending, setNullDeref_setPending, setHeaderHash_setPending, setBinaryPool_setPending, addBinaryRefs_setPending, addDeletedObject_setPending, setMeta_setPending, randomUuid_setPending, cipherProcess_setPending, updGroup_setPending, updEntry_setPending, getGroup_setPending, getEntry_setPending, setPending_xmlError, setPending_m_strictMode, setPending_m_randomStream, setPending_m_binaryPool, setPending_m_binaryMap, setPending_m_groups, setPending_m_entries, setPending_m_tmpParent, setPending_rootGroup, setPending_hasError, setPending_group, setPending_entry, setPending_groups, setPending_entries, setPending_setPending]))
  have n_MasterKeyChangeForce := hN
  clear hN
  by_cases hN : c.name = "MemoryProtection"
  · simp only [hN, String.reduceEq, if_true, if_false, parseMemoryProtection_ins h hN] <;>
      (
       try generalize parseMemoryProtection c st = A0
       try simp only [raiseError_setPending, setXmlError_setPending, setNullDeref_setPending, setHeaderHash_setPending, setBinaryPool_setPending, addBinaryRefs_setPending, addDeletedObject_setPending, setMeta_setPending, randomUuid_setPending, cipherProcess_setPending, updGroup_setPending, updEntry_setPending, getGroup_setPending, getEntry_setPending, setPending_xmlError, setPending_m_strictMode, setPending_m_randomStream, setPending_m_binaryPool, setPending_m_binaryMap, setPending_m_groups, setPending_m_entries, setPending_m_tmpParent, setPending_rootGroup, setPending_hasError, setPending_group, setPending_entry, setPending_groups, setPending_entries, setPending_setPending]
       repeat' (first | rfl | contradiction | split | simp only [raiseError_setPending, setXmlError_setPending, setNullDeref_setPending, setHeaderHash_setPending, setBinaryPool_setPending, addBinaryRefs_setPending, addDeletedObject_setPending, setMeta_setPending, randomUuid_setPending, cipherProcess_setPending, updGroup_setPending, updEntry_setPending, getGroup_setPending, getEntry_setPending, setPending_xmlError, setPending_m_strictMode, setPending_m_randomStream, setPending_m_binaryPool, setPending_m_binaryMap, setPending_m_groups, setPending_m_entries, setPending_m_tmpParent, setPending_rootGroup, setPending_hasError, setPending_group, setPending_entry, setPending_groups, setPending_entries, setPending_setPending]))
  have n_MemoryProtection := hN
  clear hN
  by_cases hN : c.name = "CustomIcons"
  · simp only [hN, String.reduceEq, if_true, if_false, parseCustomIcons_ins env h hN] <;>
      (
       try generalize parseCustomIcons env c st = A0
       try simp only [raiseError_setPending, setXmlError_setPending, setNullDeref_setPending, setHeaderHash_setPending, setBinaryPool_setPending, addBinaryRefs_setPending, addDeletedObject_setPending, setMeta_setPending, randomUuid_setPending, cipherProcess_setPending, updGroup_setPending, updEntry_setPending, getGroup_setPending, getEntry_setPending, setPending_xmlError, setPending_m_strictMode, setPending_m_randomStream, setPending_m_binaryPool, setPending_m_binaryMap, setPending_m_groups, setPending_m_entries, setPending_m_tmpParent, setPending_rootGroup, setPending_hasError, setPending_group, setPending_entry, setPending_groups, setPending_entries, setPending_setPending]
       repeat' (first | rfl | contradiction | split | simp only [raiseError_setPending, setXmlError_setPending, setNullDeref_setPending, setHeaderHash_setPending, setBinaryPool_setPending, addBinaryRefs_setPending, addDeletedObject_setPending, setMeta_setPending, randomUuid_setPending, cipherProcess_setPending, updGroup_setPending, updEntry_setPending, getGroup_setPending, getEntry_setPending, setPending_xmlError, setPending_m_strictMode, setPending_m_randomStream, setPending_m_binaryPool, setPending_m_binaryMap, setPending_m_groups, setPending_m_entries, setPending_m_tmpParent, setPending_rootGroup, setPending_hasError, setPending_group, setPending_entry, setPending_groups, setPending_entries, setPending_setPending]))
  have n_CustomIcons := hN
  clear hN
  by_cases hN : c.name = "RecycleBinEnabled"
  · have hn : c.name ∉ containerNames ∨ (b = true ∧ c.name = "Binary") :=
      Or.inl (by rw [hN]; decide)
    simp only [hN, String.reduceEq, if_true, if_false, readBool_ins h hn] <;>
      (
       try generalize readBool c st = A0
       try obtain ⟨v0, t0⟩ := A0
       try simp only [raiseError_setPending, setXmlError_setPending, setNullDeref_setPending, setHeaderHash_setPending, setBinaryPool_setPending, addBinaryRefs_setPending, addDeletedObject_setPending, setMeta_setPending, randomUuid_setPending, cipherProcess_setPending, updGroup_setPending, updEntry_setPending, getGroup_setPending, getEntry_setPending, setPending_xmlError, setPending_m_strictMode, setPending_m_randomStream, setPending_m_binaryPool, setPending_m_binaryMap, setPending_m_groups, setPending_m_entries, setPending_m_tmpParent, setPending_rootGroup, setPending_hasError, setPending_group, setPending_entry, setPending_groups, setPending_entries, setPending_setPending]
       repeat' (first | rfl | contradiction | split | simp only [raiseError_setPending, setXmlError_setPending, setNullDeref_setPending, setHeaderHash_setPending, setBinaryPool_setPending, addBinaryRefs_setPending, addDeletedObject_setPending, setMeta_setPending, randomUuid_setPending, cipherProcess_setPending, updGroup_setPending, updEntry_setPending, getGroup_setPending, getEntry_setPending, setPending_xmlError, setPending_m_strictMode, setPending_m_randomStream, setPending_m_binaryPool, setPending_m_binaryMap, setPending_m_groups, setPending_m_entries, setPending_m_tmpParent, setPending_rootGroup, setPending_hasError, setPending_group, setPending_entry, setPending_groups, setPending_entries, setPending_setPending]))
  have n_RecycleBinEnabled := hN
  clear hN
  by_cases hN : c.name = "RecycleBinUUID"
  · have hn : c.name ∉ containerNames ∨ (b = true ∧ c.name = "Binary") :=
      Or.inl (by rw [hN]; decide)
    simp only [hN, String.reduceEq, if_true, if_false, readUuid_ins env h hn] <;>
      (
       try generalize readUuid env c st = A0
       try obtain ⟨v0, t0⟩ := A0
       try simp only [raiseError_setPending, setXmlError_setPending, setNullDeref_setPending, setHeaderHash_setPending, setBinaryPool_setPending, addBinaryRefs_setPending, addDeletedObject_setPending, setMeta_setPending, randomUuid_setPending, cipherProcess_setPending, updGroup_setPending, updEntry_setPending, getGroup_setPending, getEntry_setPending, setPending_xmlError, setPending_m_strictMode, setPending_m_randomStream, setPending_m_binaryPool, setPending_m_binaryMap, setPending_m_groups, setPending_m_entries, setPending_m_tmpParent, setPending_rootGroup, setPending_hasError, setPending_group, setPending_entry, setPending_groups, setPending_entries, setPending_setPending]
       repeat' (first | rfl | contradiction | split | simp only [raiseError_setPending, setXmlError_setPending, setNullDeref_setPending, setHeaderHash_setPending, setBinaryPool_setPending, addBinaryRefs_setPending, addDeletedObject_setPending, setMeta_setPending, randomUuid_setPending, cipherProcess_setPending, updGroup_setPending, updEntry_setPending, getGroup_setPending, getEntry_setPending, setPending_xmlError, setPending_m_strictMode, setPending_m_randomStream, setPending_m_binaryPool, setPending_m_binaryMap, setPending_m_groups, setPending_m_entries, setPending_m_tmpParent, setPending_rootGroup, setPending_hasError, setPending_group, setPending_entry, setPending_groups, setPending_entries, setPending_setPending]))
  have n_RecycleBinUUID := hN
  clear hN
  by_cases hN : c.name = "RecycleBinChanged"
  · have hn : c.name ∉ containerNames ∨ (b = true ∧ c.name = "Binary") :=
      Or.inl (by rw [hN]; decide)
    simp only [hN, String.reduceEq, if_true, if_false, readDateTime_ins env h hn] <;>
      (
       try generalize readDateTime env c st = A0
       try obtain ⟨v0, t0⟩ := A0
       try simp only [raiseError_setPending, setXmlError_setPending, setNullDeref_setPending, setHeaderHash_setPending, setBinaryPool_setPending, addBinaryRefs_setPending, addDeletedObject_setPending, setMeta_setPending, randomUuid_setPending, cipherProcess_setPending, updGroup_setPending, updEntry_setPending, getGroup_setPending, getEntry_setPending, setPending_xmlError, setPending_m_strictMode, setPending_m_randomStream, setPending_m_binaryPool, setPending_m_binaryMap, setPending_m_groups, setPending_m_entries, setPending_m_tmpParent, setPending_rootGroup, setPending_hasError, setPending_group, setPending_entry, setPending_groups, setPending_entries, setPending_setPending]
       repeat' (first | rfl | contradiction | split | simp only [raiseError_setPending, setXmlError_setPending, setNullDeref_setPending, setHeaderHash_setPending, setBinaryPool_setPending, addBinaryRefs_setPending, addDeletedObject_setPending, setMeta_setPending, randomUuid_setPending, cipherProcess_setPending, updGroup_setPending, updEntry_setPending, getGroup_setPending, getEntry_setPending, setPending_xmlError, setPending_m_strictMode, setPending_m_randomStream, setPending_m_binaryPool, setPending_m_binaryMap, setPending_m_groups, setPending_m_entries, setPending_m_tmpParent, setPending_rootGroup, setPending_hasError, setPending_group, setPending_entry, setPending_groups, setPending_entries, setPending_setPending]))
  have n_RecycleBinChanged := hN
  clear hN
  by_cases hN : c.name = "EntryTemplatesGroup"
  · have hn : c.name ∉ containerNames ∨ (b = true ∧ c.name = "Binary") :=
      Or.inl (by rw [hN]; decide)
    simp only [hN, String.reduceEq, if_true, if_false, readUuid_ins env h hn] <;>
      (
       try generalize readUuid env c st = A0
       try obtain ⟨v0, t0⟩ := A0
       try simp only [raiseError_setPending, setXmlError_setPending, setNullDeref_setPending, setHeaderHash_setPending, setBinaryPool_setPending, addBinaryRefs_setPending, addDeletedObject_setPending, setMeta_setPending, randomUuid_setPending, cipherProcess_setPending, updGroup_setPending, updEntry_setPending, getGroup_setPending, getEntry_setPending, setPending_xmlError, setPending_m_strictMode, setPending_m_randomStream, setPending_m_binaryPool, setPending_m_binaryMap, setPending_m_groups, setPending_m_entries, setPending_m_tmpParent, setPending_rootGroup, setPending_hasError, setPending_group, setPending_entry, setPending_groups, setPending_entries, setPending_setPending]
       repeat' (first | rfl | contradiction | split | simp only [raiseError_setPending, setXmlError_setPending, setNullDeref_setPending, setHeaderHash_setPending, setBinaryPool_setPending, addBinaryRefs_setPending, addDeletedObject_setPending, setMeta_setPending, randomUuid_setPending, cipherProcess_setPending, updGroup_setPending, updEntry_setPending, getGroup_setPending, getEntry_setPending, setPending_xmlError, setPending_m_strictMode, setPending_m_randomStream, setPending_m_binaryPool, setPending_m_binaryMap, setPending_m_groups, setPending_m_entries, setPending_m_tmpParent, setPending_rootGroup, setPending_hasError, setPending_group, setPending_entry, setPending_groups, setPending_entries, setPending_setPending]))
  have n_EntryTemplatesGroup := hN
  clear hN
  by_cases hN : c.name = "EntryTemplatesGroupChanged"
  · have hn : c.name ∉ containerNames ∨ (b = true ∧ c.name = "Binary") :=
      Or.inl (by rw [hN]; decide)
    simp only [hN, String.reduceEq, if_true, if_false, readDateTime_ins env h hn] <;>
      (
       try generalize readDateTime env c st = A0
       try obtain ⟨v0, t0⟩ := A0
       try simp only [raiseError_setPending, setXmlError_setPending, setNullDeref_setPending, setHeaderHash_setPending, setBinaryPool_setPending, addBinaryRefs_setPending, addDeletedObject_setPending, setMeta_setPending, randomUuid_setPending, cipherProcess_setPending, updGroup_setPending, updEntry_setPending, getGroup_setPending, getEntry_setPending, setPending_xmlError, setPending_m_strictMode, setPending_m_randomStream, setPending_m_binaryPool, setPending_m_binaryMap, setPending_m_groups, setPending_m_entries, setPending_m_tmpParent, setPending_rootGroup, setPending_hasError, setPending_group, setPending_entry, setPending_groups, setPending_entries, setPending_setPending]
       repeat' (first | rfl | contradiction | split | simp only [raiseError_setPending, setXmlError_setPending, setNullDeref_setPending, setHeaderHash_setPending, setBinaryPool_setPending, addBinaryRefs_setPending, addDeletedObject_setPending, setMeta_setPending, randomUuid_setPending, cipherProcess_setPending, updGroup_setPending, updEntry_setPending, getGroup_setPending, getEntry_setPending, setPending_xmlError, setPending_m_strictMode, setPending_m_randomStream, setPending_m_binaryPool, setPending_m_binaryMap, setPending_m_groups, setPending_m_entries, setPending_m_tmpParent, setPending_rootGroup, setPending_hasError, setPending_group, setPending_entry, setPending_groups, setPending_entries, setPending_setPending]))
  have n_EntryTemplatesGroupChanged := hN
  clear hN
  by_cases hN : c.name = "LastSelectedGroup"
  · have hn : c.name ∉ containerNames ∨ (b = true ∧ c.name = "Binary") :=
      Or.inl (by rw [hN]; decide)
    simp only [hN, String.reduceEq, if_true, if_false, readUuid_ins env h hn] <;>
      (
       try generalize readUuid env c st = A0
       try obtain ⟨v0, t0⟩ := A0
       try simp only [raiseError_setPending, setXmlError_setPending, setNullDeref_setPending, setHeaderHash_setPending, setBinaryPool_setPending, addBinaryRefs_setPending, addDeletedObject_setPending, setMeta_setPending, randomUuid_setPending, cipherProcess_setPending, updGroup_setPending, updEntry_setPending, getGroup_setPending, getEntry_setPending, setPending_xmlError, setPending_m_strictMode, setPending_m_randomStream, setPending_m_binaryPool, setPending_m_binaryMap, setPending_m_groups, setPending_m_entries, setPending_m_tmpParent, setPending_rootGroup, setPending_hasError, setPending_group, setPending_entry, setPending_groups, setPending_entries, setPending_setPending]
       repeat' (first | rfl | contradiction | split | simp only [raiseError_setPending, setXmlError_setPending, setNullDeref_setPending, setHeaderHash_setPending, setBinaryPool_setPending, addBinaryRefs_setPending, addDeletedObject_setPending, setMeta_setPending, randomUuid_setPending, cipherProcess_setPending, updGroup_setPending, updEntry_setPending, getGroup_setPending, getEntry_setPending, setPending_xmlError, setPending_m_strictMode, setPending_m_randomStream, setPending_m_binaryPool, setPending_m_binaryMap, setPending_m_groups, setPending_m_entries, setPending_m_tmpParent, setPending_rootGroup, setPending_hasError, setPending_group, setPending_entry, setPending_groups, setPending_entries, setPending_setPending]))
  have n_LastSelectedGroup := hN
  clear hN
  by_cases hN : c.name = "LastTopVisibleGroup"
  · have hn : c.name ∉ containerNames ∨ (b = true ∧ c.name = "Binary") :=
      Or.inl (by rw [hN]; decide)
    simp only [hN, String.reduceEq, if_true, if_false, readUuid_ins env h hn] <;>
      (
       try generalize readUuid env c st = A0
       try obtain ⟨v0, t0⟩ := A0
       try simp only [raiseError_setPending, setXmlError_setPending, setNullDeref_setPending, setHeaderHash_setPending, setBinaryPool_setPending, addBinaryRefs_setPending, addDeletedObject_setPending, setMeta_setPending, randomUuid_setPending, cipherProcess_setPending, updGroup_setPending, updEntry_setPending, getGroup_setPending, getEntry_setPending, setPending_xmlError, setPending_m_strictMode, setPending_m_randomStream, setPending_m_binaryPool, setPending_m_binaryMap, setPending_m_groups, setPending_m_entries, setPending_m_tmpParent, setPending_rootGroup, setPending_hasError, setPending_group, setPending_entry, setPending_groups, setPending_entries, setPending_setPending]
       repeat' (first | rfl | contradiction | split | simp only [raiseError_setPending, setXmlError_setPending, setNullDeref_setPending, setHeaderHash_setPending, setBinaryPool_setPending, addBinaryRefs_setPending, addDeletedObject_setPending, setMeta_setPending, randomUuid_setPending, cipherProcess_setPending, updGroup_setPending, updEntry_setPending, getGroup_setPending, getEntry_setPending, setPending_xmlError, setPending_m_strictMode, setPending_m_randomStream, setPending_m_binaryPool, setPending_m_binaryMap, setPending_m_groups, setPending_m_entries, setPending_m_tmpParent, setPending_rootGroup, setPending_hasError, setPending_group, setPending_entry, setPending_groups, setPending_entries, setPending_setPending]))
  have n_LastTopVisibleGroup := hN
  clear hN
  by_cases hN : c.name = "HistoryMaxItems"
  · have hn : c.name ∉ containerNames ∨ (b = true ∧ c.name = "Binary") :=
      Or.inl (by rw [hN]; decide)
    simp only [hN, String.reduceEq, if_true, if_false, readNumber_ins env h hn] <;>
      (
       try generalize readNumber env c st = A0
       try obtain ⟨v0, t0⟩ := A0
       try simp only [raiseError_setPending, setXmlError_setPending, setNullDeref_setPending, setHeaderHash_setPending, setBinaryPool_setPending, addBinaryRefs_setPending, addDeletedObject_setPending, setMeta_setPending, randomUuid_setPending, cipherProcess_setPending, updGroup_setPending, updEntry_setPending, getGroup_setPending, getEntry_setPending, setPending_xmlError, setPending_m_strictMode, setPending_m_randomStream, setPending_m_binaryPool, setPending_m_binaryMap, setPending_m_groups, setPending_m_entries, setPending_m_tmpParent, setPending_rootGroup, setPending_hasError, setPending_group, setPending_entry, setPending_groups, setPending_entries, setPending_setPending]
       repeat' (first | rfl | contradiction | split | simp only [raiseError_setPending, setXmlError_setPending, setNullDeref_setPending, setHeaderHash_setPending, setBinaryPool_setPending, addBinaryRefs_setPending, addDeletedObject_setPending, setMeta_setPending, randomUuid_setPending, cipherProcess_setPending, updGroup_setPending, updEntry_setPending, getGroup_setPending, getEntry_setPending, setPending_xmlError, setPending_m_strictMode, setPending_m_randomStream, setPending_m_binaryPool, setPending_m_binaryMap, setPending_m_groups, setPending_m_entries, setPending_m_tmpParent, setPending_rootGroup, setPending_hasError, setPending_group, setPending_entry, setPending_groups, setPending_entries, setPending_setPending]))
  have n_HistoryMaxItems := hN
  clear hN
  by_cases hN : c.name = "HistoryMaxSize"
  · have hn : c.name ∉ containerNames ∨ (b = true ∧ c.name = "Binary") :=
      Or.inl (by rw [hN]; decide)
    simp only [hN, String.reduceEq, if_true, if_false, readNumber_ins env h hn] <;>
      (
       try generalize readNumber env c st = A0
       try obtain ⟨v0, t0⟩ := A0
       try simp only [raiseError_setPending, setXmlError_setPending, setNullDeref_setPending, setHeaderHash_setPending, setBinaryPool_setPending, addBinaryRefs_setPending, addDeletedObject_setPending, setMeta_setPending, randomUuid_setPending, cipherProcess_setPending, updGroup_setPending, updEntry_setPending, getGroup_setPending, getEntry_setPending, setPending_xmlError, setPending_m_strictMode, setPending_m_randomStream, setPending_m_binaryPool, setPending_m_binaryMap, setPending_m_groups, setPending_m_entries, setPending_m_tmpParent, setPending_rootGroup, setPending_hasError, setPending_group, setPending_entry, setPending_groups, setPending_entries, setPending_setPending]
       repeat' (first | rfl | contradiction | split | simp only [raiseError_setPending, setXmlError_setPending, setNullDeref_setPending, setHeaderHash_setPending, setBinaryPool_setPending, addBinaryRefs_setPending, addDeletedObject_setPending, setMeta_setPending, randomUuid_setPending, cipherProcess_setPending, updGroup_setPending, updEntry_setPending, getGroup_setPending, getEntry_setPending, setPending_xmlError, setPending_m_strictMode, setPending_m_randomStream, setPending_m_binaryPool, setPending_m_binaryMap, setPending_m_groups, setPending_m_entries, setPending_m_tmpParent, setPending_rootGroup, setPending_hasError, setPending_group, setPending_entry, setPending_groups, setPending_entries, setPending_setPending]))
  have n_HistoryMaxSize := hN
  clear hN
  by_cases hN : c.name = "Binaries"
  · simp only [hN, String.reduceEq, if_true, if_false, parseBinaries_ins env h hN] <;>
      (
       try generalize parseBinaries env c st = A0
       try simp only [raiseError_setPending, setXmlError_setPending, setNullDeref_setPending, setHeaderHash_setPending, setBinaryPool_setPending, addBinaryRefs_setPending, addDeletedObject_setPending, setMeta_setPending, randomUuid_setPending, cipherProcess_setPending, updGroup_setPending, updEntry_setPending, getGroup_setPending, getEntry_setPending, setPending_xmlError, setPending_m_strictMode, setPending_m_randomStream, setPending_m_binaryPool, setPending_m_binaryMap, setPending_m_groups, setPending_m_entries, setPending_m_tmpParent, setPending_rootGroup, setPending_hasError, setPending_group, setPending_entry, setPending_groups, setPending_entries, setPending_setPending]
       repeat' (first | rfl | contradiction | split | simp only [raiseError_setPending, setXmlError_setPending, setNullDeref_setPending, setHeaderHash_setPending, setBinaryPool_setPending, addBinaryRefs_setPending, addDeletedObject_setPending, setMeta_setPending, randomUuid_setPending, cipherProcess_setPending, updGroup_setPending, updEntry_setPending, getGroup_setPending, getEntry_setPending, setPending_xmlError, setPending_m_strictMode, setPending_m_randomStream, setPending_m_binaryPool, setPending_m_binaryMap, setPending_m_groups, setPending_m_entries, setPending_m_tmpParent, setPending_rootGroup, setPending_hasError, setPending_group, setPending_entry, setPending_groups, setPending_entries, setPending_setPending]))
  have n_Binaries := hN
  clear hN
  by_cases hN : c.name = "CustomData"
  · simp only [hN, String.reduceEq, if_true, if_false, parseCustomData_ins h hN] <;>
      (
       try generalize parseCustomData c st = A0
       try simp only [raiseError_setPending, setXmlError_setPending, setNullDeref_setPending, setHeaderHash_setPending, setBinaryPool_setPending, addBinaryRefs_setPending, addDeletedObject_setPending, setMeta_setPending, randomUuid_setPending, cipherProcess_setPending, updGroup_setPending, updEntry_setPending, getGroup_setPending, getEntry_setPending, setPending_xmlError, setPending_m_strictMode, setPending_m_randomStream, setPending_m_binaryPool, setPending_m_binaryMap, setPending_m_groups, setPending_m_entries, setPending_m_tmpParent, setPending_rootGroup, setPending_hasError, setPending_group, setPending_entry, setPending_groups, setPending_entries, setPending_setPending]
       repeat' (first | rfl | contradiction | split | simp only [raiseError_setPending, setXmlError_setPending, setNullDeref_setPending, setHeaderHash_setPending, setBinaryPool_setPending, addBinaryRefs_setPending, addDeletedObject_setPending, setMeta_setPending, randomUuid_setPending, cipherProcess_setPending, updGroup_setPending, updEntry_setPending, getGroup_setPending, getEntry_setPending, setPending_xmlError, setPending_m_strictMode, setPending_m_randomStream, setPending_m_binaryPool, setPending_m_binaryMap, setPending_m_groups, setPending_m_entries, setPending_m_tmpParent, setPending_rootGroup, setPending_hasError, setPending_group, setPending_entry, setPending_groups, setPending_entries, setPending_setPending]))
  have n_CustomData := hN
  clear hN
  by_cases hN : c.name = "SettingsChanged"
  · have hn : c.name ∉ containerNames ∨ (b = true ∧ c.name = "Binary") :=
      Or.inl (by rw [hN]; decide)
    simp only [hN, String.reduceEq, if_true, if_false, readDateTime_ins env h hn] <;>
      (
       try generalize readDateTime env c st = A0
       try obtain ⟨v0, t0⟩ := A0
       try simp only [raiseError_setPending, setXmlError_setPending, setNullDeref_setPending, setHeaderHash_setPending, setBinaryPool_setPending, addBinaryRefs_setPending, addDeletedObject_setPending, setMeta_setPending, randomUuid_setPending, cipherProcess_setPending, updGroup_setPending, updEntry_setPending, getGroup_setPending, getEntry_setPending, setPending_xmlError, setPending_m_strictMode, setPending_m_randomStream, setPending_m_binaryPool, setPending_m_binaryMap, setPending_m_groups, setPending_m_entries, setPending_m_tmpParent, setPending_rootGroup, setPending_hasError, setPending_group, setPending_entry, setPending_groups, setPending_entries, setPending_setPending]
       repeat' (first | rfl | contradiction | split | simp only [raiseError_setPending, setXmlError_setPending, setNullDeref_setPending, setHeaderHash_setPending, setBinaryPool_setPending, addBinaryRefs_setPending, addDeletedObject_setPending, setMeta_setPending, randomUuid_setPending, cipherProcess_setPending, updGroup_setPending, updEntry_setPending, getGroup_setPending, getEntry_setPending, setPending_xmlError, setPending_m_strictMode, setPending_m_randomStream, setPending_m_binaryPool, setPending_m_binaryMap, setPending_m_groups, setPending_m_entries, setPending_m_tmpParent, setPending_rootGroup, setPending_hasError, setPending_group, setPending_entry, setPending_groups, setPending_entries, setPending_setPending]))
  have n_SettingsChanged := hN
  clear hN
  simp only [n_Generator, n_HeaderHash, n_DatabaseName, n_DatabaseNameChanged, n_DatabaseDescription, n_DatabaseDescriptionChanged, n_DefaultUserName, n_DefaultUserNameChanged, n_MaintenanceHistoryDays, n_Color, n_MasterKeyChanged, n_MasterKeyChangeRec, n_MasterKeyChangeForce, n_MemoryProtection, n_CustomIcons, n_RecycleBinEnabled, n_RecycleBinUUID, n_RecycleBinChanged, n_EntryTemplatesGroup, n_EntryTemplatesGroupChanged, n_LastSelectedGroup, n_LastTopVisibleGroup, n_HistoryMaxItems, n_HistoryMaxSize, n_Binaries, n_CustomData, n_SettingsChanged, if_false, skipChild]

theorem parseMetaChild_skip (env : Env) {u : XmlElement} (hu : u.name ∉ recognizedBy "Meta")
    (st : Reader) : parseMetaChild env u st = st := by
  simp [recognizedBy] at hu
  simp [parseMetaChild, hu, skipChild]

theorem parseTimesChild_ins (env : Env) {u : XmlElement} {b : Bool} {c d : XmlElement} (h : Inserted recognizedBy u b c d)
    (a : TimeInfo) (st : Reader) (q : List (List XmlElement)) :
    parseTimesChild env d (a, st.setPending q) =
      ((parseTimesChild env c (a, st)).1, (parseTimesChild env c (a, st)).2.setPending q) := by
  obtain ⟨e1, e2, e3⟩ := inserted_head h
  have ha := inserted_attr h
  have hh := inserted_hasAttribute h
  unfold parseTimesChild
  simp only [e1, ha, hh]
  by_cases hN : c.name = "LastModificationTime"
  · have hn : c.name ∉ containerNames ∨ (b = true ∧ c.name = "Binary") :=
      Or.inl (by rw [hN]; decide)
    simp only [hN, String.reduceEq, if_true, if_false, readDateTime_ins env h hn] <;>
      (
       try generalize readDateTime env c st = A0
       try obtain ⟨v0, t0⟩ := A0
       try simp only [raiseError_setPending, setXmlError_setPending, setNullDeref_setPending, setHeaderHash_setPending, setBinaryPool_setPending, addBinaryRefs_setPending, addDeletedObject_setPending, setMeta_setPending, randomUuid_setPending, cipherProcess_setPending, updGroup_setPending, updEntry_setPending, getGroup_setPending, getEntry_setPending, setPending_xmlError, setPending_m_strictMode, setPending_m_randomStream, setPending_m_binaryPool, setPending_m_binaryMap, setPending_m_groups, setPending_m_entries, setPending_m_tmpParent, setPending_rootGroup, setPending_hasError, setPending_group, setPending_entry, setPending_groups, setPending_entries, setPending_setPending]
       repeat' (first | rfl | contradiction | split | simp only [raiseError_setPending, setXmlError_setPending, setNullDeref_setPending, setHeaderHash_setPending, setBinaryPool_setPending, addBinaryRefs_setPending, addDeletedObject_setPending, setMeta_setPending, randomUuid_setPending, cipherProcess_setPending, updGroup_setPending, updEntry_setPending, getGroup_setPending, getEntry_setPending, setPending_xmlError, setPending_m_strictMode, setPending_m_randomStream, setPending_m_binaryPool, setPending_m_binaryMap, setPending_m_groups, setPending_m_entries, setPending_m_tmpParent, setPending_rootGroup, setPending_hasError, setPending_group, setPending_entry, setPending_groups, setPending_entries, setPending_setPending]))
  have n_LastModificationTime := hN
  clear hN
  by_cases hN : c.name = "CreationTime"
  · have hn : c.name ∉ containerNames ∨ (b = true ∧ c.name = "Binary") :=
      Or.inl (by rw [hN]; decide)
    simp only [hN, String.reduceEq, if_true, if_false, readDateTime_ins env h hn] <;>
      (
       try generalize readDateTime env c st = A0
       try obtain ⟨v0, t0⟩ := A0
       try simp only [raiseError_setPending, setXmlError_setPending, setNullDeref_setPending, setHeaderHash_setPending, setBinaryPool_setPending, addBinaryRefs_setPending, addDeletedObject_setPending, setMeta_setPending, randomUuid_setPending, cipherProcess_setPending, updGroup_setPending, updEntry_setPending, getGroup_setPending, getEntry_setPending, setPending_xmlError, setPending_m_strictMode, setPending_m_randomStream, setPending_m_binaryPool, setPending_m_binaryMap, setPending_m_groups, setPending_m_entries, setPending_m_tmpParent, setPending_rootGroup, setPending_hasError, setPending_group, setPending_entry, setPending_groups, setPending_entries, setPending_setPending]
       repeat' (first | rfl | contradiction | split | simp only [raiseError_setPending, setXmlError_setPending, setNullDeref_setPending, setHeaderHash_setPending, setBinaryPool_setPending, addBinaryRefs_setPending, addDeletedObject_setPending, setMeta_setPending, randomUuid_setPending, cipherProcess_setPending, updGroup_setPending, updEntry_setPending, getGroup_setPending, getEntry_setPending, setPending_xmlError, setPending_m_strictMode, setPending_m_randomStream, setPending_m_binaryPool, setPending_m_binaryMap, setPending_m_groups, setPending_m_entries, setPending_m_tmpParent, setPending_rootGroup, setPending_hasError, setPending_group, setPending_entry, setPending_groups, setPending_entries, setPending_setPending]))
  have n_CreationTime := hN
  clear hN
  by_cases hN : c.name = "LastAccessTime"
  · have hn : c.name ∉ containerNames ∨ (b = true ∧ c.name = "Binary") :=
      Or.inl (by rw [hN]; decide)
    simp only [hN, String.reduceEq, if_true, if_false, readDateTime_ins env h hn] <;>
      (
       try generalize readDateTime env c st = A0
       try obtain ⟨v0, t0⟩ := A0
       try simp only [raiseError_setPending, setXmlError_setPending, setNullDeref_setPending, setHeaderHash_setPending, setBinaryPool_setPending, addBinaryRefs_setPending, addDeletedObject_setPending, setMeta_setPending, randomUuid_setPending, cipherProcess_setPending, updGroup_setPending, updEntry_setPending, getGroup_setPending, getEntry_setPending, setPending_xmlError, setPending_m_strictMode, setPending_m_randomStream, setPending_m_binaryPool, setPending_m_binaryMap, setPending_m_groups, setPending_m_entries, setPending_m_tmpParent, setPending_rootGroup, setPending_hasError, setPending_group, setPending_entry, setPending_groups, setPending_entries, setPending_setPending]
       repeat' (first | rfl | contradiction | split | simp only [raiseError_setPending, setXmlError_setPending, setNullDeref_setPending, setHeaderHash_setPending, setBinaryPool_setPending, addBinaryRefs_setPending, addDeletedObject_setPending, setMeta_setPending, randomUuid_setPending, cipherProcess_setPending, updGroup_setPending, updEntry_setPending, getGroup_setPending, getEntry_setPending, setPending_xmlError, setPending_m_strictMode, setPending_m_randomStream, setPending_m_binaryPool, setPending_m_binaryMap, setPending_m_groups, setPending_m_entries, setPending_m_tmpParent, setPending_rootGroup, setPending_hasError, setPending_group, setPending_entry, setPending_groups, setPending_entries, setPending_setPending]))
  have n_LastAccessTime := hN
  clear hN
  by_cases hN : c.name = "ExpiryTime"
  · have hn : c.name ∉ containerNames ∨ (b = true ∧ c.name = "Binary") :=
      Or.inl (by rw [hN]; decide)
    simp only [hN, String.reduceEq, if_true, if_false, readDateTime_ins env h hn] <;>
      (
       try generalize readDateTime env c st = A0
       try obtain ⟨v0, t0⟩ := A0
       try simp only [raiseError_setPending, setXmlError_setPending, setNullDeref_setPending, setHeaderHash_setPending, setBinaryPool_setPending, addBinaryRefs_setPending, addDeletedObject_setPending, setMeta_setPending, randomUuid_setPending, cipherProcess_setPending, updGroup_setPending, updEntry_setPending, getGroup_setPending, getEntry_setPending, setPending_xmlError, setPending_m_strictMode, setPending_m_randomStream, setPending_m_binaryPool, setPending_m_binaryMap, setPending_m_groups, setPending_m_entries, setPending_m_tmpParent, setPending_rootGroup, setPending_hasError, setPending_group, setPending_entry, setPending_groups, setPending_entries, setPending_setPending]
       repeat' (first | rfl | contradiction | split | simp only [raiseError_setPending, setXmlError_setPending, setNullDeref_setPending, setHeaderHash_setPending, setBinaryPool_setPending, addBinaryRefs_setPending, addDeletedObject_setPending, setMeta_setPending, randomUuid_setPending, cipherProcess_setPending, updGroup_setPending, updEntry_setPending, getGroup_setPending, getEntry_setPending, setPending_xmlError, setPending_m_strictMode, setPending_m_randomStream, setPending_m_binaryPool, setPending_m_binaryMap, setPending_m_groups, setPending_m_entries, setPending_m_tmpParent, setPending_rootGroup, setPending_hasError, setPending_group, setPending_entry, setPending_groups, setPending_entries, setPending_setPending]))
  have n_ExpiryTime := hN
  clear hN
  by_cases hN : c.name = "Expires"
  · have hn : c.name ∉ containerNames ∨ (b = true ∧ c.name = "Binary") :=
      Or.inl (by rw [hN]; decide)
    simp only [hN, String.reduceEq, if_true, if_false, readBool_ins h hn] <;>
      (
       try generalize readBool c st = A0
       try obtain ⟨v0, t0⟩ := A0
       try simp only [raiseError_setPending, setXmlError_setPending, setNullDeref_setPending, setHeaderHash_setPending, setBinaryPool_setPending, addBinaryRefs_setPending, addDeletedObject_setPending, setMeta_setPending, randomUuid_setPending, cipherProcess_setPending, updGroup_setPending, updEntry_setPending, getGroup_setPending, getEntry_setPending, setPending_xmlError, setPending_m_strictMode, setPending_m_randomStream, setPending_m_binaryPool, setPending_m_binaryMap, setPending_m_groups, setPending_m_entries, setPending_m_tmpParent, setPending_rootGroup, setPending_hasError, setPending_group, setPending_entry, setPending_groups, setPending_entries, setPending_setPending]
       repeat' (first | rfl | contradiction | split | simp only [raiseError_setPending, setXmlError_setPending, setNullDeref_setPending, setHeaderHash_setPending, setBinaryPool_setPending, addBinaryRefs_setPending, addDeletedObject_setPending, setMeta_setPending, randomUuid_setPending, cipherProcess_setPending, updGroup_setPending, updEntry_setPending, getGroup_setPending, getEntry_setPending, setPending_xmlError, setPending_m_strictMode, setPending_m_randomStream, setPending_m_binaryPool, setPending_m_binaryMap, setPending_m_groups, setPending_m_entries, setPending_m_tmpParent, setPending_rootGroup, setPending_hasError, setPending_group, setPending_entry, setPending_groups, setPending_entries, setPending_setPending]))
  have n_Expires := hN
  clear hN
  by_cases hN : c.name = "UsageCount"
  · have hn : c.name ∉ containerNames ∨ (b = true ∧ c.name = "Binary") :=
      Or.inl (by rw [hN]; decide)
    simp only [hN, String.reduceEq, if_true, if_false, readNumber_ins env h hn] <;>
      (
       try generalize readNumber env c st = A0
       try obtain ⟨v0, t0⟩ := A0
       try simp only [raiseError_setPending, setXmlError_setPending, setNullDeref_setPending, setHeaderHash_setPending, setBinaryPool_setPending, addBinaryRefs_setPending, addDeletedObject_setPending, setMeta_setPending, randomUuid_setPending, cipherProcess_setPending, updGroup_setPending, updEntry_setPending, getGroup_setPending, getEntry_setPending, setPending_xmlError, setPending_m_strictMode, setPending_m_randomStream, setPending_m_binaryPool, setPending_m_binaryMap, setPending_m_groups, setPending_m_entries, setPending_m_tmpParent, setPending_rootGroup, setPending_hasError, setPending_group, setPending_entry, setPending_groups, setPending_entries, setPending_setPending]
       repeat' (first | rfl | contradiction | split | simp only [raiseError_setPending, setXmlError_setPending, setNullDeref_setPending, setHeaderHash_setPending, setBinaryPool_setPending, addBinaryRefs_setPending, addDeletedObject_setPending, setMeta_setPending, randomUuid_setPending, cipherProcess_setPending, updGroup_setPending, updEntry_setPending, getGroup_setPending, getEntry_setPending, setPending_xmlError, setPending_m_strictMode, setPending_m_randomStream, setPending_m_binaryPool, setPending_m_binaryMap, setPending_m_groups, setPending_m_entries, setPending_m_tmpParent, setPending_rootGroup, setPending_hasError, setPending_group, setPending_entry, setPending_groups, setPending_entries, setPending_setPending]))
  have n_UsageCount := hN
  clear hN
  by_cases hN : c.name = "LocationChanged"
  · have hn : c.name ∉ containerNames ∨ (b = true ∧ c.name = "Binary") :=
      Or.inl (by rw [hN]; decide)
    simp only [hN, String.reduceEq, if_true, if_false, readDateTime_ins env h hn] <;>
      (
       try generalize readDateTime env c st = A0
       try obtain ⟨v0, t0⟩ := A0
       try simp only [raiseError_setPending, setXmlError_setPending, setNullDeref_setPending, setHeaderHash_setPending, setBinaryPool_setPending, addBinaryRefs_setPending, addDeletedObject_setPending, setMeta_setPending, randomUuid_setPending, cipherProcess_setPending, updGroup_setPending, updEntry_setPending, getGroup_setPending, getEntry_setPending, setPending_xmlError, setPending_m_strictMode, setPending_m_randomStream, setPending_m_binaryPool, setPending_m_binaryMap, setPending_m_groups, setPending_m_entries, setPending_m_tmpParent, setPending_rootGroup, setPending_hasError, setPending_group, setPending_entry, setPending_groups, setPending_entries, setPending_setPending]
       repeat' (first | rfl | contradiction | split | simp only [raiseError_setPending, setXmlError_setPending, setNullDeref_setPending, setHeaderHash_setPending, setBinaryPool_setPending, addBinaryRefs_setPending, addDeletedObject_setPending, setMeta_setPending, randomUuid_setPending, cipherProcess_setPending, updGroup_setPending, updEntry_setPending, getGroup_setPending, getEntry_setPending, setPending_xmlError, setPending_m_strictMode, setPending_m_randomStream, setPending_m_binaryPool, setPending_m_binaryMap, setPending_m_groups, setPending_m_entries, setPending_m_tmpParent, setPending_rootGroup, setPending_hasError, setPending_group, setPending_entry, setPending_groups, setPending_entries, setPending_setPending]))
  have n_LocationChanged := hN
  clear hN
  simp only [n_LastModificationTime, n_CreationTime, n_LastAccessTime, n_ExpiryTime, n_Expires, n_UsageCount, n_LocationChanged, if_false, skipChild]

theorem parseTimesChild_skip (env : Env) {u : XmlElement} (hu : u.name ∉ recognizedBy "Times")
    (s : TimeInfo × Reader) : parseTimesChild env u s = s := by
  simp [recognizedBy] at hu
  simp [parseTimesChild, hu, skipChild]

theorem parseTimes_ins (env : Env) {u : XmlElement} {b : Bool} {x y : XmlElement} (h : Inserted recognizedBy u b x y)
    (hN : x.name = "Times") (st : Reader) (q : List (List XmlElement)) :
    parseTimes env y (st.setPending q) =
      ((parseTimes env x st).1, (parseTimes env x st).2.setPending q) := by
  have hl := inserted_children h
  rw [hN] at hl
  have hl2 : InsertedList recognizedBy u false (recognizedBy "Times") x.children y.children := hl
  unfold parseTimes
  rw [forEachChild_ins (parseTimesChild env) (fun hu s => parseTimesChild_skip env hu s)
    (fun p r a t k hc => parseTimesChild_ins env hc a t k) hl2 TimeInfo.init st q] <;>
    (generalize forEachChild (parseTimesChild env) x.children (TimeInfo.init, st) = A
     obtain ⟨l, t⟩ := A
     try simp only [raiseError_setPending, setXmlError_setPending, setNullDeref_setPending, setHeaderHash_setPending, setBinaryPool_setPending, addBinaryRefs_setPending, addDeletedObject_setPending, setMeta_setPending, randomUuid_setPending, cipherProcess_setPending, updGroup_setPending, updEntry_setPending, getGroup_setPending, getEntry_setPending, setPending_xmlError, setPending_m_strictMode, setPending_m_randomStream, setPending_m_binaryPool, setPending_m_binaryMap, setPending_m_groups, setPending_m_entries, setPending_m_tmpParent, setPending_rootGroup, setPending_hasError, setPending_group, setPending_entry, setPending_groups, setPending_entries, setPending_setPending]
     repeat' (first | rfl | contradiction | split | simp only [raiseError_setPending, setXmlError_setPending, setNullDeref_setPending, setHeaderHash_setPending, setBinaryPool_setPending, addBinaryRefs_setPending, addDeletedObject_setPending, setMeta_setPending, randomUuid_setPending, cipherProcess_setPending, updGroup_setPending, updEntry_setPending, getGroup_setPending, getEntry_setPending, setPending_xmlError, setPending_m_strictMode, setPending_m_randomStream, setPending_m_binaryPool, setPending_m_binaryMap, setPending_m_groups, setPending_m_entries, setPending_m_tmpParent, setPending_rootGroup, setPending_hasError, setPending_group, setPending_entry, setPending_groups, setPending_entries, setPending_setPending]))

theorem parseDeletedObjectChild_ins (env : Env) {u : XmlElement} {b : Bool} {c d : XmlElement} (h : Inserted recognizedBy u b c d)
    (a : DeletedObject) (st : Reader) (q : List (List XmlElement)) :
    parseDeletedObjectChild env d (a, st.setPending q) =
      ((parseDeletedObjectChild env c (a, st)).1, (parseDeletedObjectChild env c (a, st)).2.setPending q) := by
  obtain ⟨e1, e2, e3⟩ := inserted_head h
  have ha := inserted_attr h
  have hh := inserted_hasAttribute h
  unfold parseDeletedObjectChild
  simp only [e1, ha, hh]
  by_cases hN : c.name = "UUID"
  · have hn : c.name ∉ containerNames ∨ (b = true ∧ c.name = "Binary") :=
      Or.inl (by rw [hN]; decide)
    simp only [hN, String.reduceEq, if_true, if_false, readUuid_ins env h hn] <;>
      (
       try generalize readUuid env c st = A0
       try obtain ⟨v0, t0⟩ := A0
       try simp only [raiseError_setPending, setXmlError_setPending, setNullDeref_setPending, setHeaderHash_setPending, setBinaryPool_setPending, addBinaryRefs_setPending, addDeletedObject_setPending, setMeta_setPending, randomUuid_setPending, cipherProcess_setPending, updGroup_setPending, updEntry_setPending, getGroup_setPending, getEntry_setPending, setPending_xmlError, setPending_m_strictMode, setPending_m_randomStream, setPending_m_binaryPool, setPending_m_binaryMap, setPending_m_groups, setPending_m_entries, setPending_m_tmpParent, setPending_rootGroup, setPending_hasError, setPending_group, setPending_entry, setPending_groups, setPending_entries, setPending_setPending]
       repeat' (first | rfl | contradiction | split | simp only [raiseError_setPending, setXmlError_setPending, setNullDeref_setPending, setHeaderHash_setPending, setBinaryPool_setPending, addBinaryRefs_setPending, addDeletedObject_setPending, setMeta_setPending, randomUuid_setPending, cipherProcess_setPending, updGroup_setPending, updEntry_setPending, getGroup_setPending, getEntry_setPending, setPending_xmlError, setPending_m_strictMode, setPending_m_randomStream, setPending_m_binaryPool, setPending_m_binaryMap, setPending_m_groups, setPending_m_entries, setPending_m_tmpParent, setPending_rootGroup, setPending_hasError, setPending_group, setPending_entry, setPending_groups, setPending_entries, setPending_setPending]))
  have n_UUID := hN
  clear hN
  by_cases hN : c.name = "DeletionTime"
  · have hn : c.name ∉ containerNames ∨ (b = true ∧ c.name = "Binary") :=
      Or.inl (by rw [hN]; decide)
    simp only [hN, String.reduceEq, if_true, if_false, readDateTime_ins env h hn] <;>
      (
       try generalize readDateTime env c st = A0
       try obtain ⟨v0, t0⟩ := A0
       try simp only [raiseError_setPending, setXmlError_setPending, setNullDeref_setPending, setHeaderHash_setPending, setBinaryPool_setPending, addBinaryRefs_setPending, addDeletedObject_setPending, setMeta_setPending, randomUuid_setPending, cipherProcess_setPending, updGroup_setPending, updEntry_setPending, getGroup_setPending, getEntry_setPending, setPending_xmlError, setPending_m_strictMode, setPending_m_randomStream, setPending_m_binaryPool, setPending_m_binaryMap, setPending_m_groups, setPending_m_entries, setPending_m_tmpParent, setPending_rootGroup, setPending_hasError, setPending_group, setPending_entry, setPending_groups, setPending_entries, setPending_setPending]
       repeat' (first | rfl | contradiction | split | simp only [raiseError_setPending, setXmlError_setPending, setNullDeref_setPending, setHeaderHash_setPending, setBinaryPool_setPending, addBinaryRefs_setPending, addDeletedObject_setPending, setMeta_setPending, randomUuid_setPending, cipherProcess_setPending, updGroup_setPending, updEntry_setPending, getGroup_setPending, getEntry_setPending, setPending_xmlError, setPending_m_strictMode, setPending_m_randomStream, setPending_m_binaryPool, setPending_m_binaryMap, setPending_m_groups, setPending_m_entries, setPending_m_tmpParent, setPending_rootGroup, setPending_hasError, setPending_group, setPending_entry, setPending_groups, setPending_entries, setPending_setPending]))
  have n_DeletionTime := hN
  clear hN
  simp only [n_UUID, n_DeletionTime, if_false, skipChild]

theorem parseDeletedObjectChild_skip (env : Env) {u : XmlElement} (hu : u.name ∉ recognizedBy "DeletedObject")
    (s : DeletedObject × Reader) : parseDeletedObjectChild env u s = s := by
  simp [recognizedBy] at hu
  simp [parseDeletedObjectChild, hu, skipChild]

theorem parseDeletedObject_ins (env : Env) {u : XmlElement} {b : Bool} {x y : XmlElement} (h : Inserted recognizedBy u b x y)
    (hN : x.name = "DeletedObject") (st : Reader) (q : List (List XmlElement)) :
    parseDeletedObject env y (st.setPending q) = (parseDeletedObject env x st).setPending q := by
  have hl := inserted_children h
  rw [hN] at hl
  have hl2 : InsertedList recognizedBy u false (recognizedBy "DeletedObject") x.children y.children := hl
  unfold parseDeletedObject
  rw [forEachChild_ins (parseDeletedObjectChild env) (fun hu s => parseDeletedObjectChild_skip env hu s)
    (fun p r a t k hc => parseDeletedObjectChild_ins env hc a t k) hl2 ⟨Uuid.null, .null⟩ st q] <;>
    (generalize forEachChild (parseDeletedObjectChild env) x.children (⟨Uuid.null, .null⟩, st) = A
     obtain ⟨l, t⟩ := A
     try simp only [raiseError_setPending, setXmlError_setPending, setNullDeref_setPending, setHeaderHash_setPending, setBinaryPool_setPending, addBinaryRefs_setPending, addDeletedObject_setPending, setMeta_setPending, randomUuid_setPending, cipherProcess_setPending, updGroup_setPending, updEntry_setPending, getGroup_setPending, getEntry_setPending, setPending_xmlError, setPending_m_strictMode, setPending_m_randomStream, setPending_m_binaryPool, setPending_m_binaryMap, setPending_m_groups, setPending_m_entries, setPending_m_tmpParent, setPending_rootGroup, setPending_hasError, setPending_group, setPending_entry, setPending_groups, setPending_entries, setPending_setPending]
     repeat' (first | rfl | contradiction | split | simp only [raiseError_setPending, setXmlError_setPending, setNullDeref_setPending, setHeaderHash_setPending, setBinaryPool_setPending, addBinaryRefs_setPending, addDeletedObject_setPending, setMeta_setPending, randomUuid_setPending, cipherProcess_setPending, updGroup_setPending, updEntry_setPending, getGroup_setPending, getEntry_setPending, setPending_xmlError, setPending_m_strictMode, setPending_m_randomStream, setPending_m_binaryPool, setPending_m_binaryMap, setPending_m_groups, setPending_m_entries, setPending_m_tmpParent, setPending_rootGroup, setPending_hasError, setPending_group, setPending_entry, setPending_groups, setPending_entries, setPending_setPending]))

theorem parseDeletedObjectsChild_ins (env : Env) {u : XmlElement} {b : Bool} {c d : XmlElement} (h : Inserted recognizedBy u b c d)
    (a : Unit) (st : Reader) (q : List (List XmlElement)) :
    parseDeletedObjectsChild env d (a, st.setPending q) =
      ((parseDeletedObjectsChild env c (a, st)).1, (parseDeletedObjectsChild env c (a, st)).2.setPending q) := by
  obtain ⟨e1, e2, e3⟩ := inserted_head h
  have ha := inserted_attr h
  have hh := inserted_hasAttribute h
  unfold parseDeletedObjectsChild
  simp only [e1, ha, hh]
  by_cases hN : c.name = "DeletedObject"
  · simp only [hN, String.reduceEq, if_true, if_false, parseDeletedObject_ins env h hN] <;>
      (
       try generalize parseDeletedObject env c st = A0
       try simp only [raiseError_setPending, setXmlError_setPending, setNullDeref_setPending, setHeaderHash_setPending, setBinaryPool_setPending, addBinaryRefs_setPending, addDeletedObject_setPending, setMeta_setPending, randomUuid_setPending, cipherProcess_setPending, updGroup_setPending, updEntry_setPending, getGroup_setPending, getEntry_setPending, setPending_xmlError, setPending_m_strictMode, setPending_m_randomStream, setPending_m_binaryPool, setPending_m_binaryMap, setPending_m_groups, setPending_m_entries, setPending_m_tmpParent, setPending_rootGroup, setPending_hasError, setPending_group, setPending_entry, setPending_groups, setPending_entries, setPending_setPending]
       repeat' (first | rfl | contradiction | split | simp only [raiseError_setPending, setXmlError_setPending, setNullDeref_setPending, setHeaderHash_setPending, setBinaryPool_setPending, addBinaryRefs_setPending, addDeletedObject_setPending, setMeta_setPending, randomUuid_setPending, cipherProcess_setPending, updGroup_setPending, updEntry_setPending, getGroup_setPending, getEntry_setPending, setPending_xmlError, setPending_m_strictMode, setPending_m_randomStream, setPending_m_binaryPool, setPending_m_binaryMap, setPending_m_groups, setPending_m_entries, setPending_m_tmpParent, setPending_rootGroup, setPending_hasError, setPending_group, setPending_entry, setPending_groups, setPending_entries, setPending_setPending]))
  have n_DeletedObject := hN
  clear hN
  simp only [n_DeletedObject, if_false, skipChild]

theorem parseDeletedObjectsChild_skip (env : Env) {u : XmlElement} (hu : u.name ∉ recognizedBy "DeletedObjects")
    (s : Unit × Reader) : parseDeletedObjectsChild env u s = s := by
  simp [recognizedBy] at hu
  simp [parseDeletedObjectsChild, hu, skipChild]

theorem parseDeletedObjects_ins (env : Env) {u : XmlElement} {b : Bool} {x y : XmlElement} (h : Inserted recognizedBy u b x y)
    (hN : x.name = "DeletedObjects") (st : Reader) (q : List (List XmlElement)) :
    parseDeletedObjects env y (st.setPending q) = (parseDeletedObjects env x st).setPending q := by
  have hl := inserted_children h
  rw [hN] at hl
  have hl2 : InsertedList recognizedBy u false (recognizedBy "DeletedObjects") x.children y.children := hl
  unfold parseDeletedObjects
  rw [forEachChild_ins (parseDeletedObjectsChild env) (fun hu s => parseDeletedObjectsChild_skip env hu s)
    (fun p r a t k hc => parseDeletedObjectsChild_ins env hc a t k) hl2 () st q] <;>
    (generalize forEachChild (parseDeletedObjectsChild env) x.children ((), st) = A
     obtain ⟨l, t⟩ := A
     try simp only [raiseError_setPending, setXmlError_setPending, setNullDeref_setPending, setHeaderHash_setPending, setBinaryPool_setPending, addBinaryRefs_setPending, addDeletedObject_setPending, setMeta_setPending, randomUuid_setPending, cipherProcess_setPending, updGroup_setPending, updEntry_setPending, getGroup_setPending, getEntry_setPending, setPending_xmlError, setPending_m_strictMode, setPending_m_randomStream, setPending_m_binaryPool, setPending_m_binaryMap, setPending_m_groups, setPending_m_entries, setPending_m_tmpParent, setPending_rootGroup, setPending_hasError, setPending_group, setPending_entry, setPending_groups, setPending_entries, setPending_setPending]
     repeat' (first | rfl | contradiction | split | simp only [raiseError_setPending, setXmlError_setPending, setNullDeref_setPending, setHeaderHash_setPending, setBinaryPool_setPending, addBinaryRefs_setPending, addDeletedObject_setPending, setMeta_setPending, randomUuid_setPending, cipherProcess_setPending, updGroup_setPending, updEntry_setPending, getGroup_setPending, getEntry_setPending, setPending_xmlError, setPending_m_strictMode, setPending_m_randomStream, setPending_m_binaryPool, setPending_m_binaryMap, setPending_m_groups, setPending_m_entries, setPending_m_tmpParent, setPending_rootGroup, setPending_hasError, setPending_group, setPending_entry, setPending_groups, setPending_entries, setPending_setPending]))

theorem parseMeta_ins (env : Env) {u : XmlElement} {b : Bool} {x y : XmlElement}
    (h : Inserted recognizedBy u b x y) (hN : x.name = "Meta") (st : Reader) (q : List (List XmlElement)) :
    parseMeta env y (st.setPending q) = (parseMeta env x st).setPending q := by
  have hl := inserted_children h
  rw [hN] at hl
  have hl2 : InsertedList recognizedBy u false (recognizedBy "Meta") x.children y.children := hl
  unfold parseMeta
  rw [forEachChild_ins (fun c (s : Unit × Reader) => ((), parseMetaChild env c s.2))
    (fun hu s => by simp only [parseMetaChild_skip env hu])
    (fun p r a t k hc => by simp only [parseMetaChild_ins env hc t k]) hl2 () st q]

theorem parseEntryStringValue_ins (env : Env) {u : XmlElement} {b : Bool} {c d : XmlElement} (h : Inserted recognizedBy u b c d)
    (hn : c.name ∉ containerNames ∨ (b = true ∧ c.name = "Binary")) (a : StringLocals) (st : Reader) (q : List (List XmlElement)) :
    parseEntryStringValue env d (a, st.setPending q) =
      ((parseEntryStringValue env c (a, st)).1,
        (parseEntryStringValue env c (a, st)).2.setPending q) := by
  have ha := inserted_attr h
  unfold parseEntryStringValue
  simp only [ha, readString_ins h hn]
  generalize readString c st = A
  obtain ⟨v, t⟩ := A
  simp only [raiseError_setPending, setXmlError_setPending, setNullDeref_setPending, setHeaderHash_setPending, setBinaryPool_setPending, addBinaryRefs_setPending, addDeletedObject_setPending, setMeta_setPending, randomUuid_setPending, cipherProcess_setPending, updGroup_setPending, updEntry_setPending, getGroup_setPending, getEntry_setPending, setPending_xmlError, setPending_m_strictMode, setPending_m_randomStream, setPending_m_binaryPool, setPending_m_binaryMap, setPending_m_groups, setPending_m_entries, setPending_m_tmpParent, setPending_rootGroup, setPending_hasError, setPending_group, setPending_entry, setPending_groups, setPending_entries, setPending_setPending]
  split
  · cases hr : t.m_randomStream with
    | none => rfl
    | some cs =>
      simp only []
      rcases hp : t.cipherProcess env cs (env.fromBase64 v) with ⟨o, t2⟩
      cases o <;> rfl
  · rfl

theorem parseEntryBinaryValue_ins (env : Env) {u : XmlElement} {b : Bool} {c d : XmlElement} (h : Inserted recognizedBy u b c d)
    (hn : c.name ∉ containerNames ∨ (b = true ∧ c.name = "Binary")) (a : BinaryLocals) (st : Reader) (q : List (List XmlElement)) :
    parseEntryBinaryValue env d (a, st.setPending q) =
      ((parseEntryBinaryValue env c (a, st)).1,
        (parseEntryBinaryValue env c (a, st)).2.setPending q) := by
  have ha := inserted_attr h
  have hh := inserted_hasAttribute h
  unfold parseEntryBinaryValue
  simp only [ha, hh, readBinary_ins env h hn, skipChild]
  generalize readBinary env c st = A
  obtain ⟨v, t⟩ := A
  simp only [raiseError_setPending, setXmlError_setPending, setNullDeref_setPending, setHeaderHash_setPending, setBinaryPool_setPending, addBinaryRefs_setPending, addDeletedObject_setPending, setMeta_setPending, randomUuid_setPending, cipherProcess_setPending, updGroup_setPending, updEntry_setPending, getGroup_setPending, getEntry_setPending, setPending_xmlError, setPending_m_strictMode, setPending_m_randomStream, setPending_m_binaryPool, setPending_m_binaryMap, setPending_m_groups, setPending_m_entries, setPending_m_tmpParent, setPending_rootGroup, setPending_hasError, setPending_group, setPending_entry, setPending_groups, setPending_entries, setPending_setPending]
  split
  · rfl
  · split
    · cases hr : t.m_randomStream with
      | none => rfl
      | some cs =>
        simp only []
        rcases hp : t.cipherProcess env cs v with ⟨o, t2⟩
        cases o <;> rfl
    · rfl

theorem parseEntryStringChild_ins (env : Env) {u : XmlElement} {b : Bool} {c d : XmlElement} (h : Inserted recognizedBy u b c d)
    (a : StringLocals) (st : Reader) (q : List (List XmlElement)) :
    parseEntryStringChild env d (a, st.setPending q) =
      ((parseEntryStringChild env c (a, st)).1, (parseEntryStringChild env c (a, st)).2.setPending q) := by
  obtain ⟨e1, e2, e3⟩ := inserted_head h
  have ha := inserted_attr h
  have hh := inserted_hasAttribute h
  unfold parseEntryStringChild
  simp only [e1, ha, hh]
  by_cases hN : c.name = "Key"
  · have hn : c.name ∉ containerNames ∨ (b = true ∧ c.name = "Binary") :=
      Or.inl (by rw [hN]; decide)
    simp only [hN, String.reduceEq, if_true, if_false, readString_ins h hn] <;>
      (
       try generalize readString c st = A0
       try obtain ⟨v0, t0⟩ := A0
       try simp only [raiseError_setPending, setXmlError_setPending, setNullDeref_setPending, setHeaderHash_setPending, setBinaryPool_setPending, addBinaryRefs_setPending, addDeletedObject_setPending, setMeta_setPending, randomUuid_setPending, cipherProcess_setPending, updGroup_setPending, updEntry_setPending, getGroup_setPending, getEntry_setPending, setPending_xmlError, setPending_m_strictMode, setPending_m_randomStream, setPending_m_binaryPool, setPending_m_binaryMap, setPending_m_groups, setPending_m_entries, setPending_m_tmpParent, setPending_rootGroup, setPending_hasError, setPending_group, setPending_entry, setPending_groups, setPending_entries, setPending_setPending]
       repeat' (first | rfl | contradiction | split | simp only [raiseError_setPending, setXmlError_setPending, setNullDeref_setPending, setHeaderHash_setPending, setBinaryPool_setPending, addBinaryRefs_setPending, addDeletedObject_setPending, setMeta_setPending, randomUuid_setPending, cipherProcess_setPending, updGroup_setPending, updEntry_setPending, getGroup_setPending, getEntry_setPending, setPending_xmlError, setPending_m_strictMode, setPending_m_randomStream, setPending_m_binaryPool, setPending_m_binaryMap, setPending_m_groups, setPending_m_entries, setPending_m_tmpParent, setPending_rootGroup, setPending_hasError, setPending_group, setPending_entry, setPending_groups, setPending_entries, setPending_setPending]))
  have n_Key := hN
  clear hN
  by_cases hN : c.name = "Value"
  · have hn : c.name ∉ containerNames ∨ (b = true ∧ c.name = "Binary") :=
      Or.inl (by rw [hN]; decide)
    simp only [hN, String.reduceEq, if_true, if_false, parseEntryStringValue_ins env h hn] <;>
      (
       try generalize parseEntryStringValue env c (a, st) = A0
       try obtain ⟨v0, t0⟩ := A0
       try simp only [raiseError_setPending, setXmlError_setPending, setNullDeref_setPending, setHeaderHash_setPending, setBinaryPool_setPending, addBinaryRefs_setPending, addDeletedObject_setPending, setMeta_setPending, randomUuid_setPending, cipherProcess_setPending, updGroup_setPending, updEntry_setPending, getGroup_setPending, getEntry_setPending, setPending_xmlError, setPending_m_strictMode, setPending_m_randomStream, setPending_m_binaryPool, setPending_m_binaryMap, setPending_m_groups, setPending_m_entries, setPending_m_tmpParent, setPending_rootGroup, setPending_hasError, setPending_group, setPending_entry, setPending_groups, setPending_entries, setPending_setPending]
       repeat' (first | rfl | contradiction | split | simp only [raiseError_setPending, setXmlError_setPending, setNullDeref_setPending, setHeaderHash_setPending, setBinaryPool_setPending, addBinaryRefs_setPending, addDeletedObject_setPending, setMeta_setPending, randomUuid_setPending, cipherProcess_setPending, updGroup_setPending, updEntry_setPending, getGroup_setPending, getEntry_setPending, setPending_xmlError, setPending_m_strictMode, setPending_m_randomStream, setPending_m_binaryPool, setPending_m_binaryMap, setPending_m_groups, setPending_m_entries, setPending_m_tmpParent, setPending_rootGroup, setPending_hasError, setPending_group, setPending_entry, setPending_groups, setPending_entries, setPending_setPending]))
  have n_Value := hN
  clear hN
  simp only [n_Key, n_Value, if_false, skipChild]

theorem parseEntryStringChild_skip (env : Env) {u : XmlElement} (hu : u.name ∉ recognizedBy "String")
    (s : StringLocals × Reader) : parseEntryStringChild env u s = s := by
  simp [recognizedBy] at hu
  simp [parseEntryStringChild, hu, skipChild]

theorem parseEntryString_ins (env : Env) (entry : Nat) {u : XmlElement} {b : Bool} {x y : XmlElement} (h : Inserted recognizedBy u b x y)
    (hN : x.name = "String") (st : Reader) (q : List (List XmlElement)) :
    parseEntryString env entry y (st.setPending q) = (parseEntryString env entry x st).setPending q := by
  have hl := inserted_children h
  rw [hN] at hl
  have hl2 : InsertedList recognizedBy u false (recognizedBy "String") x.children y.children := hl
  unfold parseEntryString
  rw [forEachChild_ins (parseEntryStringChild env) (fun hu s => parseEntryStringChild_skip env hu s)
    (fun p r a t k hc => parseEntryStringChild_ins env hc a t k) hl2 ⟨"", "", false, false, false⟩ st q] <;>
    (generalize forEachChild (parseEntryStringChild env) x.children (⟨"", "", false, false, false⟩, st) = A
     obtain ⟨l, t⟩ := A
     try simp only [raiseError_setPending, setXmlError_setPending, setNullDeref_setPending, setHeaderHash_setPending, setBinaryPool_setPending, addBinaryRefs_setPending, addDeletedObject_setPending, setMeta_setPending, randomUuid_setPending, cipherProcess_setPending, updGroup_setPending, updEntry_setPending, getGroup_setPending, getEntry_setPending, setPending_xmlError, setPending_m_strictMode, setPending_m_randomStream, setPending_m_binaryPool, setPending_m_binaryMap, setPending_m_groups, setPending_m_entries, setPending_m_tmpParent, setPending_rootGroup, setPending_hasError, setPending_group, setPending_entry, setPending_groups, setPending_entries, setPending_setPending]
     repeat' (first | rfl | contradiction | split | simp only [raiseError_setPending, setXmlError_setPending, setNullDeref_setPending, setHeaderHash_setPending, setBinaryPool_setPending, addBinaryRefs_setPending, addDeletedObject_setPending, setMeta_setPending, randomUuid_setPending, cipherProcess_setPending, updGroup_setPending, updEntry_setPending, getGroup_setPending, getEntry_setPending, setPending_xmlError, setPending_m_strictMode, setPending_m_randomStream, setPending_m_binaryPool, setPending_m_binaryMap, setPending_m_groups, setPending_m_entries, setPending_m_tmpParent, setPending_rootGroup, setPending_hasError, setPending_group, setPending_entry, setPending_groups, setPending_entries, setPending_setPending]))

theorem parseEntryBinaryChild_ins (env : Env) {u : XmlElement} {b : Bool} {c d : XmlElement} (h : Inserted recognizedBy u b c d)
    (a : BinaryLocals) (st : Reader) (q : List (List XmlElement)) :
    parseEntryBinaryChild env d (a, st.setPending q) =
      ((parseEntryBinaryChild env c (a, st)).1, (parseEntryBinaryChild env c (a, st)).2.setPending q) := by
  obtain ⟨e1, e2, e3⟩ := inserted_head h
  have ha := inserted_attr h
  have hh := inserted_hasAttribute h
  unfold parseEntryBinaryChild
  simp only [e1, ha, hh]
  by_cases hN : c.name = "Key"
  · have hn : c.name ∉ containerNames ∨ (b = true ∧ c.name = "Binary") :=
      Or.inl (by rw [hN]; decide)
    simp only [hN, String.reduceEq, if_true, if_false, readString_ins h hn] <;>
      (
       try generalize readString c st = A0
       try obtain ⟨v0, t0⟩ := A0
       try simp only [raiseError_setPending, setXmlError_setPending, setNullDeref_setPending, setHeaderHash_setPending, setBinaryPool_setPending, addBinaryRefs_setPending, addDeletedObject_setPending, setMeta_setPending, randomUuid_setPending, cipherProcess_setPending, updGroup_setPending, updEntry_setPending, getGroup_setPending, getEntry_setPending, setPending_xmlError, setPending_m_strictMode, setPending_m_randomStream, setPending_m_binaryPool, setPending_m_binaryMap, setPending_m_groups, setPending_m_entries, setPending_m_tmpParent, setPending_rootGroup, setPending_hasError, setPending_group, setPending_entry, setPending_groups, setPending_entries, setPending_setPending]
       repeat' (first | rfl | contradiction | split | simp only [raiseError_setPending, setXmlError_setPending, setNullDeref_setPending, setHeaderHash_setPending, setBinaryPool_setPending, addBinaryRefs_setPending, addDeletedObject_setPending, setMeta_setPending, randomUuid_setPending, cipherProcess_setPending, updGroup_setPending, updEntry_setPending, getGroup_setPending, getEntry_setPending, setPending_xmlError, setPending_m_strictMode, setPending_m_randomStream, setPending_m_binaryPool, setPending_m_binaryMap, setPending_m_groups, setPending_m_entries, setPending_m_tmpParent, setPending_rootGroup, setPending_hasError, setPending_group, setPending_entry, setPending_groups, setPending_entries, setPending_setPending]))
  have n_Key := hN
  clear hN
  by_cases hN : c.name = "Value"
  · have hn : c.name ∉ containerNames ∨ (b = true ∧ c.name = "Binary") :=
      Or.inl (by rw [hN]; decide)
    simp only [hN, String.reduceEq, if_true, if_false, parseEntryBinaryValue_ins env h hn] <;>
      (
       try generalize parseEntryBinaryValue env c (a, st) = A0
       try obtain ⟨v0, t0⟩ := A0
       try simp only [raiseError_setPending, setXmlError_setPending, setNullDeref_setPending, setHeaderHash_setPending, setBinaryPool_setPending, addBinaryRefs_setPending, addDeletedObject_setPending, setMeta_setPending, randomUuid_setPending, cipherProcess_setPending, updGroup_setPending, updEntry_setPending, getGroup_setPending, getEntry_setPending, setPending_xmlError, setPending_m_strictMode, setPending_m_randomStream, setPending_m_binaryPool, setPending_m_binaryMap, setPending_m_groups, setPending_m_entries, setPending_m_tmpParent, setPending_rootGroup, setPending_hasError, setPending_group, setPending_entry, setPending_groups, setPending_entries, setPending_setPending]
       repeat' (first | rfl | contradiction | split | simp only [raiseError_setPending, setXmlError_setPending, setNullDeref_setPending, setHeaderHash_setPending, setBinaryPool_setPending, addBinaryRefs_setPending, addDeletedObject_setPending, setMeta_setPending, randomUuid_setPending, cipherProcess_setPending, updGroup_setPending, updEntry_setPending, getGroup_setPending, getEntry_setPending, setPending_xmlError, setPending_m_strictMode, setPending_m_randomStream, setPending_m_binaryPool, setPending_m_binaryMap, setPending_m_groups, setPending_m_entries, setPending_m_tmpParent, setPending_rootGroup, setPending_hasError, setPending_group, setPending_entry, setPending_groups, setPending_entries, setPending_setPending]))
  have n_Value := hN
  clear hN
  simp only [n_Key, n_Value, if_false, skipChild]

theorem parseEntryBinaryChild_skip (env : Env) {u : XmlElement} (hu : u.name ∉ recognizedBy "Binary")
    (s : BinaryLocals × Reader) : parseEntryBinaryChild env u s = s := by
  simp [recognizedBy] at hu
  simp [parseEntryBinaryChild, hu, skipChild]

theorem parseEntryBinary_ins (env : Env) (entry : Nat) {u : XmlElement} {b : Bool} {x y : XmlElement} (h : Inserted recognizedBy u b x y)
    (hN : x.name = "Binary") (st : Reader) (q : List (List XmlElement)) :
    parseEntryBinary env entry y (st.setPending q) =
      ((parseEntryBinary env entry x st).1, (parseEntryBinary env entry x st).2.setPending q) := by
  have hl := inserted_children h
  rw [hN] at hl
  have hl2 : InsertedList recognizedBy u false (recognizedBy "Binary") x.children y.children := hl
  unfold parseEntryBinary
  rw [forEachChild_ins (parseEntryBinaryChild env) (fun hu s => parseEntryBinaryChild_skip env hu s)
    (fun p r a t k hc => parseEntryBinaryChild_ins env hc a t k) hl2 ⟨(none, ""), "", [], false, false⟩ st q] <;>
    (generalize forEachChild (parseEntryBinaryChild env) x.children (⟨(none, ""), "", [], false, false⟩, st) = A
     obtain ⟨l, t⟩ := A
     try simp only [raiseError_setPending, setXmlError_setPending, setNullDeref_setPending, setHeaderHash_setPending, setBinaryPool_setPending, addBinaryRefs_setPending, addDeletedObject_setPending, setMeta_setPending, randomUuid_setPending, cipherProcess_setPending, updGroup_setPending, updEntry_setPending, getGroup_setPending, getEntry_setPending, setPending_xmlError, setPending_m_strictMode, setPending_m_randomStream, setPending_m_binaryPool, setPending_m_binaryMap, setPending_m_groups, setPending_m_entries, setPending_m_tmpParent, setPending_rootGroup, setPending_hasError, setPending_group, setPending_entry, setPending_groups, setPending_entries, setPending_setPending]
     repeat' (first | rfl | contradiction | split | simp only [raiseError_setPending, setXmlError_setPending, setNullDeref_setPending, setHeaderHash_setPending, setBinaryPool_setPending, addBinaryRefs_setPending, addDeletedObject_setPending, setMeta_setPending, randomUuid_setPending, cipherProcess_setPending, updGroup_setPending, updEntry_setPending, getGroup_setPending, getEntry_setPending, setPending_xmlError, setPending_m_strictMode, setPending_m_randomStream, setPending_m_binaryPool, setPending_m_binaryMap, setPending_m_groups, setPending_m_entries, setPending_m_tmpParent, setPending_rootGroup, setPending_hasError, setPending_group, setPending_entry, setPending_groups, setPending_entries, setPending_setPending]))

theorem parseAutoTypeAssocChild_ins {u : XmlElement} {b : Bool} {c d : XmlElement} (h : Inserted recognizedBy u b c d)
    (a : AssocLocals) (st : Reader) (q : List (List XmlElement)) :
    parseAutoTypeAssocChild d (a, st.setPending q) =
      ((parseAutoTypeAssocChild c (a, st)).1, (parseAutoTypeAssocChild c (a, st)).2.setPending q) := by
  obtain ⟨e1, e2, e3⟩ := inserted_head h
  have ha := inserted_attr h
  have hh := inserted_hasAttribute h
  unfold parseAutoTypeAssocChild
  simp only [e1, ha, hh]
  by_cases hN : c.name = "Window"
  · have hn : c.name ∉ containerNames ∨ (b = true ∧ c.name = "Binary") :=
      Or.inl (by rw [hN]; decide)
    simp only [hN, String.reduceEq, if_true, if_false, readString_ins h hn] <;>
      (
       try generalize readString c st = A0
       try obtain ⟨v0, t0⟩ := A0
       try simp only [raiseError_setPending, setXmlError_setPending, setNullDeref_setPending, setHeaderHash_setPending, setBinaryPool_setPending, addBinaryRefs_setPending, addDeletedObject_setPending, setMeta_setPending, randomUuid_setPending, cipherProcess_setPending, updGroup_setPending, updEntry_setPending, getGroup_setPending, getEntry_setPending, setPending_xmlError, setPending_m_strictMode, setPending_m_randomStream, setPending_m_binaryPool, setPending_m_binaryMap, setPending_m_groups, setPending_m_entries, setPending_m_tmpParent, setPending_rootGroup, setPending_hasError, setPending_group, setPending_entry, setPending_groups, setPending_entries, setPending_setPending]
       repeat' (first | rfl | contradiction | split | simp only [raiseError_setPending, setXmlError_setPending, setNullDeref_setPending, setHeaderHash_setPending, setBinaryPool_setPending, addBinaryRefs_setPending, addDeletedObject_setPending, setMeta_setPending, randomUuid_setPending, cipherProcess_setPending, updGroup_setPending, updEntry_setPending, getGroup_setPending, getEntry_setPending, setPending_xmlError, setPending_m_strictMode, setPending_m_randomStream, setPending_m_binaryPool, setPending_m_binaryMap, setPending_m_groups, setPending_m_entries, setPending_m_tmpParent, setPending_rootGroup, setPending_hasError, setPending_group, setPending_entry, setPending_groups, setPending_entries, setPending_setPending]))
  have n_Window := hN
  clear hN
  by_cases hN : c.name = "KeystrokeSequence"
  · have hn : c.name ∉ containerNames ∨ (b = true ∧ c.name = "Binary") :=
      Or.inl (by rw [hN]; decide)
    simp only [hN, String.reduceEq, if_true, if_false, readString_ins h hn] <;>
      (
       try generalize readString c st = A0
       try obtain ⟨v0, t0⟩ := A0
       try simp only [raiseError_setPending, setXmlError_setPending, setNullDeref_setPending, setHeaderHash_setPending, setBinaryPool_setPending, addBinaryRefs_setPending, addDeletedObject_setPending, setMeta_setPending, randomUuid_setPending, cipherProcess_setPending, updGroup_setPending, updEntry_setPending, getGroup_setPending, getEntry_setPending, setPending_xmlError, setPending_m_strictMode, setPending_m_randomStream, setPending_m_binaryPool, setPending_m_binaryMap, setPending_m_groups, setPending_m_entries, setPending_m_tmpParent, setPending_rootGroup, setPending_hasError, setPending_group, setPending_entry, setPending_groups, setPending_entries, setPending_setPending]
       repeat' (first | rfl | contradiction | split | simp only [raiseError_setPending, setXmlError_setPending, setNullDeref_setPending, setHeaderHash_setPending, setBinaryPool_setPending, addBinaryRefs_setPending, addDeletedObject_setPending, setMeta_setPending, randomUuid_setPending, cipherProcess_setPending, updGroup_setPending, updEntry_setPending, getGroup_setPending, getEntry_setPending, setPending_xmlError, setPending_m_strictMode, setPending_m_randomStream, setPending_m_binaryPool, setPending_m_binaryMap, setPending_m_groups, setPending_m_entries, setPending_m_tmpParent, setPending_rootGroup, setPending_hasError, setPending_group, setPending_entry, setPending_groups, setPending_entries, setPending_setPending]))
  have n_KeystrokeSequence := hN
  clear hN
  simp only [n_Window, n_KeystrokeSequence, if_false, skipChild]

theorem parseAutoTypeAssocChild_skip {u : XmlElement} (hu : u.name ∉ recognizedBy "Association")
    (s : AssocLocals × Reader) : parseAutoTypeAssocChild u s = s := by
  simp [recognizedBy] at hu
  simp [parseAutoTypeAssocChild, hu, skipChild]

theorem parseAutoTypeAssoc_ins (entry : Nat) {u : XmlElement} {b : Bool} {x y : XmlElement} (h : Inserted recognizedBy u b x y)
    (hN : x.name = "Association") (st : Reader) (q : List (List XmlElement)) :
    parseAutoTypeAssoc entry y (st.setPending q) = (parseAutoTypeAssoc entry x st).setPending q := by
  have hl := inserted_children h
  rw [hN] at hl
  have hl2 : InsertedList recognizedBy u false (recognizedBy "Association") x.children y.children := hl
  unfold parseAutoTypeAssoc
  rw [forEachChild_ins parseAutoTypeAssocChild (fun hu s => parseAutoTypeAssocChild_skip hu s)
    (fun p r a t k hc => parseAutoTypeAssocChild_ins hc a t k) hl2 ⟨⟨"", ""⟩, false, false⟩ st q] <;>
    (generalize forEachChild parseAutoTypeAssocChild x.children (⟨⟨"", ""⟩, false, false⟩, st) = A
     obtain ⟨l, t⟩ := A
     try simp only [raiseError_setPending, setXmlError_setPending, setNullDeref_setPending, setHeaderHash_setPending, setBinaryPool_setPending, addBinaryRefs_setPending, addDeletedObject_setPending, setMeta_setPending, randomUuid_setPending, cipherProcess_setPending, updGroup_setPending, updEntry_setPending, getGroup_setPending, getEntry_setPending, setPending_xmlError, setPending_m_strictMode, setPending_m_randomStream, setPending_m_binaryPool, setPending_m_binaryMap, setPending_m_groups, setPending_m_entries, setPending_m_tmpParent, setPending_rootGroup, setPending_hasError, setPending_group, setPending_entry, setPending_groups, setPending_entries, setPending_setPending]
     repeat' (first | rfl | contradiction | split | simp only [raiseError_setPending, setXmlError_setPending, setNullDeref_setPending, setHeaderHash_setPending, setBinaryPool_setPending, addBinaryRefs_setPending, addDeletedObject_setPending, setMeta_setPending, randomUuid_setPending, cipherProcess_setPending, updGroup_setPending, updEntry_setPending, getGroup_setPending, getEntry_setPending, setPending_xmlError, setPending_m_strictMode, setPending_m_randomStream, setPending_m_binaryPool, setPending_m_binaryMap, setPending_m_groups, setPending_m_entries, setPending_m_tmpParent, setPending_rootGroup, setPending_hasError, setPending_group, setPending_entry, setPending_groups, setPending_entries, setPending_setPending]))

theorem parseAutoTypeChild_ins (env : Env) (entry : Nat) {u : XmlElement} {b : Bool} {c d : XmlElement} (h : Inserted recognizedBy u b c d)
    (a : Unit) (st : Reader) (q : List (List XmlElement)) :
    parseAutoTypeChild env entry d (a, st.setPending q) =
      ((parseAutoTypeChild env entry c (a, st)).1, (parseAutoTypeChild env entry c (a, st)).2.setPending q) := by
  obtain ⟨e1, e2, e3⟩ := inserted_head h
  have ha := inserted_attr h
  have hh := inserted_hasAttribute h
  unfold parseAutoTypeChild
  simp only [e1, ha, hh]
  by_cases hN : c.name = "Enabled"
  · have hn : c.name ∉ containerNames ∨ (b = true ∧ c.name = "Binary") :=
      Or.inl (by rw [hN]; decide)
    simp only [hN, String.reduceEq, if_true, if_false, readBool_ins h hn] <;>
      (
       try generalize readBool c st = A0
       try obtain ⟨v0, t0⟩ := A0
       try simp only [raiseError_setPending, setXmlError_setPending, setNullDeref_setPending, setHeaderHash_setPending, setBinaryPool_setPending, addBinaryRefs_setPending, addDeletedObject_setPending, setMeta_setPending, randomUuid_setPending, cipherProcess_setPending, updGroup_setPending, updEntry_setPending, getGroup_setPending, getEntry_setPending, setPending_xmlError, setPending_m_strictMode, setPending_m_randomStream, setPending_m_binaryPool, setPending_m_binaryMap, setPending_m_groups, setPending_m_entries, setPending_m_tmpParent, setPending_rootGroup, setPending_hasError, setPending_group, setPending_entry, setPending_groups, setPending_entries, setPending_setPending]
       repeat' (first | rfl | contradiction | split | simp only [raiseError_setPending, setXmlError_setPending, setNullDeref_setPending, setHeaderHash_setPending, setBinaryPool_setPending, addBinaryRefs_setPending, addDeletedObject_setPending, setMeta_setPending, randomUuid_setPending, cipherProcess_setPending, updGroup_setPending, updEntry_setPending, getGroup_setPending, getEntry_setPending, setPending_xmlError, setPending_m_strictMode, setPending_m_randomStream, setPending_m_binaryPool, setPending_m_binaryMap, setPending_m_groups, setPending_m_entries, setPending_m_tmpParent, setPending_rootGroup, setPending_hasError, setPending_group, setPending_entry, setPending_groups, setPending_entries, setPending_setPending]))
  have n_Enabled := hN
  clear hN
  by_cases hN : c.name = "DataTransferObfuscation"
  · have hn : c.name ∉ containerNames ∨ (b = true ∧ c.name = "Binary") :=
      Or.inl (by rw [hN]; decide)
    simp only [hN, String.reduceEq, if_true, if_false, readNumber_ins env h hn] <;>
      (
       try generalize readNumber env c st = A0
       try obtain ⟨v0, t0⟩ := A0
       try simp only [raiseError_setPending, setXmlError_setPending, setNullDeref_setPending, setHeaderHash_setPending, setBinaryPool_setPending, addBinaryRefs_setPending, addDeletedObject_setPending, setMeta_setPending, randomUuid_setPending, cipherProcess_setPending, updGroup_setPending, updEntry_setPending, getGroup_setPending, getEntry_setPending, setPending_xmlError, setPending_m_strictMode, setPending_m_randomStream, setPending_m_binaryPool, setPending_m_binaryMap, setPending_m_groups, setPending_m_entries, setPending_m_tmpParent, setPending_rootGroup, setPending_hasError, setPending_group, setPending_entry, setPending_groups, setPending_entries, setPending_setPending]
       repeat' (first | rfl | contradiction | split | simp only [raiseError_setPending, setXmlError_setPending, setNullDeref_setPending, setHeaderHash_setPending, setBinaryPool_setPending, addBinaryRefs_setPending, addDeletedObject_setPending, setMeta_setPending, randomUuid_setPending, cipherProcess_setPending, updGroup_setPending, updEntry_setPending, getGroup_setPending, getEntry_setPending, setPending_xmlError, setPending_m_strictMode, setPending_m_randomStream, setPending_m_binaryPool, setPending_m_binaryMap, setPending_m_groups, setPending_m_entries, setPending_m_tmpParent, setPending_rootGroup, setPending_hasError, setPending_group, setPending_entry, setPending_groups, setPending_entries, setPending_setPending]))
  have n_DataTransferObfuscation := hN
  clear hN
  by_cases hN : c.name = "DefaultSequence"
  · have hn : c.name ∉ containerNames ∨ (b = true ∧ c.name = "Binary") :=
      Or.inl (by rw [hN]; decide)
    simp only [hN, String.reduceEq, if_true, if_false, readString_ins h hn] <;>
      (
       try generalize readString c st = A0
       try obtain ⟨v0, t0⟩ := A0
       try simp only [raiseError_setPending, setXmlError_setPending, setNullDeref_setPending, setHeaderHash_setPending, setBinaryPool_setPending, addBinaryRefs_setPending, addDeletedObject_setPending, setMeta_setPending, randomUuid_setPending, cipherProcess_setPending, updGroup_setPending, updEntry_setPending, getGroup_setPending, getEntry_setPending, setPending_xmlError, setPending_m_strictMode, setPending_m_randomStream, setPending_m_binaryPool, setPending_m_binaryMap, setPending_m_groups, setPending_m_entries, setPending_m_tmpParent, setPending_rootGroup, setPending_hasError, setPending_group, setPending_entry, setPending_groups, setPending_entries, setPending_setPending]
       repeat' (first | rfl | contradiction | split | simp only [raiseError_setPending, setXmlError_setPending, setNullDeref_setPending, setHeaderHash_setPending, setBinaryPool_setPending, addBinaryRefs_setPending, addDeletedObject_setPending, setMeta_setPending, randomUuid_setPending, cipherProcess_setPending, updGroup_setPending, updEntry_setPending, getGroup_setPending, getEntry_setPending, setPending_xmlError, setPending_m_strictMode, setPending_m_randomStream, setPending_m_binaryPool, setPending_m_binaryMap, setPending_m_groups, setPending_m_entries, setPending_m_tmpParent, setPending_rootGroup, setPending_hasError, setPending_group, setPending_entry, setPending_groups, setPending_entries, setPending_setPending]))
  have n_DefaultSequence := hN
  clear hN
  by_cases hN : c.name = "Association"
  · simp only [hN, String.reduceEq, if_true, if_false, parseAutoTypeAssoc_ins entry h hN] <;>
      (
       try generalize parseAutoTypeAssoc entry c st = A0
       try simp only [raiseError_setPending, setXmlError_setPending, setNullDeref_setPending, setHeaderHash_setPending, setBinaryPool_setPending, addBinaryRefs_setPending, addDeletedObject_setPending, setMeta_setPending, randomUuid_setPending, cipherProcess_setPending, updGroup_setPending, updEntry_setPending, getGroup_setPending, getEntry_setPending, setPending_xmlError, setPending_m_strictMode, setPending_m_randomStream, setPending_m_binaryPool, setPending_m_binaryMap, setPending_m_groups, setPending_m_entries, setPending_m_tmpParent, setPending_rootGroup, setPending_hasError, setPending_group, setPending_entry, setPending_groups, setPending_entries, setPending_setPending]
       repeat' (first | rfl | contradiction | split | simp only [raiseError_setPending, setXmlError_setPending, setNullDeref_setPending, setHeaderHash_setPending, setBinaryPool_setPending, addBinaryRefs_setPending, addDeletedObject_setPending, setMeta_setPending, randomUuid_setPending, cipherProcess_setPending, updGroup_setPending, updEntry_setPending, getGroup_setPending, getEntry_setPending, setPending_xmlError, setPending_m_strictMode, setPending_m_randomStream, setPending_m_binaryPool, setPending_m_binaryMap, setPending_m_groups, setPending_m_entries, setPending_m_tmpParent, setPending_rootGroup, setPending_hasError, setPending_group, setPending_entry, setPending_groups, setPending_entries, setPending_setPending]))
  have n_Association := hN
  clear hN
  simp only [n_Enabled, n_DataTransferObfuscation, n_DefaultSequence, n_Association, if_false, skipChild]

theorem parseAutoTypeChild_skip (env : Env) (entry : Nat) {u : XmlElement} (hu : u.name ∉ recognizedBy "AutoType")
    (s : Unit × Reader) : parseAutoTypeChild env entry u s = s := by
  simp [recognizedBy] at hu
  simp [parseAutoTypeChild, hu, skipChild]

theorem parseAutoType_ins (env : Env) (entry : Nat) {u : XmlElement} {b : Bool} {x y : XmlElement} (h : Inserted recognizedBy u b x y)
    (hN : x.name = "AutoType") (st : Reader) (q : List (List XmlElement)) :
    parseAutoType env entry y (st.setPending q) = (parseAutoType env entry x st).setPending q := by
  have hl := inserted_children h
  rw [hN] at hl
  have hl2 : InsertedList recognizedBy u false (recognizedBy "AutoType") x.children y.children := hl
  unfold parseAutoType
  rw [forEachChild_ins (parseAutoTypeChild env entry) (fun hu s => parseAutoTypeChild_skip env entry hu s)
    (fun p r a t k hc => parseAutoTypeChild_ins env entry hc a t k) hl2 () st q] <;>
    (generalize forEachChild (parseAutoTypeChild env entry) x.children ((), st) = A
     obtain ⟨l, t⟩ := A
     try simp only [raiseError_setPending, setXmlError_setPending, setNullDeref_setPending, setHeaderHash_setPending, setBinaryPool_setPending, addBinaryRefs_setPending, addDeletedObject_setPending, setMeta_setPending, randomUuid_setPending, cipherProcess_setPending, updGroup_setPending, updEntry_setPending, getGroup_setPending, getEntry_setPending, setPending_xmlError, setPending_m_strictMode, setPending_m_randomStream, setPending_m_binaryPool, setPending_m_binaryMap, setPending_m_groups, setPending_m_entries, setPending_m_tmpParent, setPending_rootGroup, setPending_hasError, setPending_group, setPending_entry, setPending_groups, setPending_entries, setPending_setPending]
     repeat' (first | rfl | contradiction | split | simp only [raiseError_setPending, setXmlError_setPending, setNullDeref_setPending, setHeaderHash_setPending, setBinaryPool_setPending, addBinaryRefs_setPending, addDeletedObject_setPending, setMeta_setPending, randomUuid_setPending, cipherProcess_setPending, updGroup_setPending, updEntry_setPending, getGroup_setPending, getEntry_setPending, setPending_xmlError, setPending_m_strictMode, setPending_m_randomStream, setPending_m_binaryPool, setPending_m_binaryMap, setPending_m_groups, setPending_m_entries, setPending_m_tmpParent, setPending_rootGroup, setPending_hasError, setPending_group, setPending_entry, setPending_groups, setPending_entries, setPending_setPending]))

theorem parseGroupField_ins (env : Env) (group : Nat) {u : XmlElement} {b : Bool} {c d : XmlElement} (h : Inserted recognizedBy u b c d)
    (st : Reader) (q : List (List XmlElement)) :
    parseGroupField env group d (st.setPending q) = (parseGroupField env group c st).setPending q := by
  obtain ⟨e1, e2, e3⟩ := inserted_head h
  have ha := inserted_attr h
  have hh := inserted_hasAttribute h
  unfold parseGroupField
  simp only [e1, ha, hh]
  by_cases hN : c.name = "UUID"
  · have hn : c.name ∉ containerNames ∨ (b = true ∧ c.name = "Binary") :=
      Or.inl (by rw [hN]; decide)
    simp only [hN, String.reduceEq, if_true, if_false, readUuid_ins env h hn] <;>
      (
       try generalize readUuid env c st = A0
       try obtain ⟨v0, t0⟩ := A0
       try simp only [raiseError_setPending, setXmlError_setPending, setNullDeref_setPending, setHeaderHash_setPending, setBinaryPool_setPending, addBinaryRefs_setPending, addDeletedObject_setPending, setMeta_setPending, randomUuid_setPending, cipherProcess_setPending, updGroup_setPending, updEntry_setPending, getGroup_setPending, getEntry_setPending, setPending_xmlError, setPending_m_strictMode, setPending_m_randomStream, setPending_m_binaryPool, setPending_m_binaryMap, setPending_m_groups, setPending_m_entries, setPending_m_tmpParent, setPending_rootGroup, setPending_hasError, setPending_group, setPending_entry, setPending_groups, setPending_entries, setPending_setPending]
       repeat' (first | rfl | contradiction | split | simp only [raiseError_setPending, setXmlError_setPending, setNullDeref_setPending, setHeaderHash_setPending, setBinaryPool_setPending, addBinaryRefs_setPending, addDeletedObject_setPending, setMeta_setPending, randomUuid_setPending, cipherProcess_setPending, updGroup_setPending, updEntry_setPending, getGroup_setPending, getEntry_setPending, setPending_xmlError, setPending_m_strictMode, setPending_m_randomStream, setPending_m_binaryPool, setPending_m_binaryMap, setPending_m_groups, setPending_m_entries, setPending_m_tmpParent, setPending_rootGroup, setPending_hasError, setPending_group, setPending_entry, setPending_groups, setPending_entries, setPending_setPending]))
  have n_UUID := hN
  clear hN
  by_cases hN : c.name = "Name"
  · have hn : c.name ∉ containerNames ∨ (b = true ∧ c.name = "Binary") :=
      Or.inl (by rw [hN]; decide)
    simp only [hN, String.reduceEq, if_true, if_false, readString_ins h hn] <;>
      (
       try generalize readString c st = A0
       try obtain ⟨v0, t0⟩ := A0
       try simp only [raiseError_setPending, setXmlError_setPending, setNullDeref_setPending, setHeaderHash_setPending, setBinaryPool_setPending, addBinaryRefs_setPending, addDeletedObject_setPending, setMeta_setPending, randomUuid_setPending, cipherProcess_setPending, updGroup_setPending, updEntry_setPending, getGroup_setPending, getEntry_setPending, setPending_xmlError, setPending_m_strictMode, setPending_m_randomStream, setPending_m_binaryPool, setPending_m_binaryMap, setPending_m_groups, setPending_m_entries, setPending_m_tmpParent, setPending_rootGroup, setPending_hasError, setPending_group, setPending_entry, setPending_groups, setPending_entries, setPending_setPending]
       repeat' (first | rfl | contradiction | split | simp only [raiseError_setPending, setXmlError_setPending, setNullDeref_setPending, setHeaderHash_setPending, setBinaryPool_setPending, addBinaryRefs_setPending, addDeletedObject_setPending, setMeta_setPending, randomUuid_setPending, cipherProcess_setPending, updGroup_setPending, updEntry_setPending, getGroup_setPending, getEntry_setPending, setPending_xmlError, setPending_m_strictMode, setPending_m_randomStream, setPending_m_binaryPool, setPending_m_binaryMap, setPending_m_groups, setPending_m_entries, setPending_m_tmpParent, setPending_rootGroup, setPending_hasError, setPending_group, setPending_entry, setPending_groups, setPending_entries, setPending_setPending]))
  have n_Name := hN
  clear hN
  by_cases hN : c.name = "Notes"
  · have hn : c.name ∉ containerNames ∨ (b = true ∧ c.name = "Binary") :=
      Or.inl (by rw [hN]; decide)
    simp only [hN, String.reduceEq, if_true, if_false, readString_ins h hn] <;>
      (
       try generalize readString c st = A0
       try obtain ⟨v0, t0⟩ := A0
       try simp only [raiseError_setPending, setXmlError_setPending, setNullDeref_setPending, setHeaderHash_setPending, setBinaryPool_setPending, addBinaryRefs_setPending, addDeletedObject_setPending, setMeta_setPending, randomUuid_setPending, cipherProcess_setPending, updGroup_setPending, updEntry_setPending, getGroup_setPending, getEntry_setPending, setPending_xmlError, setPending_m_strictMode, setPending_m_randomStream, setPending_m_binaryPool, setPending_m_binaryMap, setPending_m_groups, setPending_m_entries, setPending_m_tmpParent, setPending_rootGroup, setPending_hasError, setPending_group, setPending_entry, setPending_groups, setPending_entries, setPending_setPending]
       repeat' (first | rfl | contradiction | split | simp only [raiseError_setPending, setXmlError_setPending, setNullDeref_setPending, setHeaderHash_setPending, setBinaryPool_setPending, addBinaryRefs_setPending, addDeletedObject_setPending, setMeta_setPending, randomUuid_setPending, cipherProcess_setPending, updGroup_setPending, updEntry_setPending, getGroup_setPending, getEntry_setPending, setPending_xmlError, setPending_m_strictMode, setPending_m_randomStream, setPending_m_binaryPool, setPending_m_binaryMap, setPending_m_groups, setPending_m_entries, setPending_m_tmpParent, setPending_rootGroup, setPending_hasError, setPending_group, setPending_entry, setPending_groups, setPending_entries, setPending_setPending]))
  have n_Notes := hN
  clear hN
  by_cases hN : c.name = "IconID"
  · have hn : c.name ∉ containerNames ∨ (b = true ∧ c.name = "Binary") :=
      Or.inl (by rw [hN]; decide)
    simp only [hN, String.reduceEq, if_true, if_false, readNumber_ins env h hn] <;>
      (
       try generalize readNumber env c st = A0
       try obtain ⟨v0, t0⟩ := A0
       try simp only [raiseError_setPending, setXmlError_setPending, setNullDeref_setPending, setHeaderHash_setPending, setBinaryPool_setPending, addBinaryRefs_setPending, addDeletedObject_setPending, setMeta_setPending, randomUuid_setPending, cipherProcess_setPending, updGroup_setPending, updEntry_setPending, getGroup_setPending, getEntry_setPending, setPending_xmlError, setPending_m_strictMode, setPending_m_randomStream, setPending_m_binaryPool, setPending_m_binaryMap, setPending_m_groups, setPending_m_entries, setPending_m_tmpParent, setPending_rootGroup, setPending_hasError, setPending_group, setPending_entry, setPending_groups, setPending_entries, setPending_setPending]
       repeat' (first | rfl | contradiction | split | simp only [raiseError_setPending, setXmlError_setPending, setNullDeref_setPending, setHeaderHash_setPending, setBinaryPool_setPending, addBinaryRefs_setPending, addDeletedObject_setPending, setMeta_setPending, randomUuid_setPending, cipherProcess_setPending, updGroup_setPending, updEntry_setPending, getGroup_setPending, getEntry_setPending, setPending_xmlError, setPending_m_strictMode, setPending_m_randomStream, setPending_m_binaryPool, setPending_m_binaryMap, setPending_m_groups, setPending_m_entries, setPending_m_tmpParent, setPending_rootGroup, setPending_hasError, setPending_group, setPending_entry, setPending_groups, setPending_entries, setPending_setPending]))
  have n_IconID := hN
  clear hN
  by_cases hN : c.name = "CustomIconUUID"
  · have hn : c.name ∉ containerNames ∨ (b = true ∧ c.name = "Binary") :=
      Or.inl (by rw [hN]; decide)
    simp only [hN, String.reduceEq, if_true, if_false, readUuid_ins env h hn] <;>
      (
       try generalize readUuid env c st = A0
       try obtain ⟨v0, t0⟩ := A0
       try simp only [raiseError_setPending, setXmlError_setPending, setNullDeref_setPending, setHeaderHash_setPending, setBinaryPool_setPending, addBinaryRefs_setPending, addDeletedObject_setPending, setMeta_setPending, randomUuid_setPending, cipherProcess_setPending, updGroup_setPending, updEntry_setPending, getGroup_setPending, getEntry_setPending, setPending_xmlError, setPending_m_strictMode, setPending_m_randomStream, setPending_m_binaryPool, setPending_m_binaryMap, setPending_m_groups, setPending_m_entries, setPending_m_tmpParent, setPending_rootGroup, setPending_hasError, setPending_group, setPending_entry, setPending_groups, setPending_entries, setPending_setPending]
       repeat' (first | rfl | contradiction | split | simp only [raiseError_setPending, setXmlError_setPending, setNullDeref_setPending, setHeaderHash_setPending, setBinaryPool_setPending, addBinaryRefs_setPending, addDeletedObject_setPending, setMeta_setPending, randomUuid_setPending, cipherProcess_setPending, updGroup_setPending, updEntry_setPending, getGroup_setPending, getEntry_setPending, setPending_xmlError, setPending_m_strictMode, setPending_m_randomStream, setPending_m_binaryPool, setPending_m_binaryMap, setPending_m_groups, setPending_m_entries, setPending_m_tmpParent, setPending_rootGroup, setPending_hasError, setPending_group, setPending_entry, setPending_groups, setPending_entries, setPending_setPending]))
  have n_CustomIconUUID := hN
  clear hN
  by_cases hN : c.name = "Times"
  · simp only [hN, String.reduceEq, if_true, if_false, parseTimes_ins env h hN] <;>
      (
       try generalize parseTimes env c st = A0
       try obtain ⟨v0, t0⟩ := A0
       try simp only [raiseError_setPending, setXmlError_setPending, setNullDeref_setPending, setHeaderHash_setPending, setBinaryPool_setPending, addBinaryRefs_setPending, addDeletedObject_setPending, setMeta_setPending, randomUuid_setPending, cipherProcess_setPending, updGroup_setPending, updEntry_setPending, getGroup_setPending, getEntry_setPending, setPending_xmlError, setPending_m_strictMode, setPending_m_randomStream, setPending_m_binaryPool, setPending_m_binaryMap, setPending_m_groups, setPending_m_entries, setPending_m_tmpParent, setPending_rootGroup, setPending_hasError, setPending_group, setPending_entry, setPending_groups, setPending_entries, setPending_setPending]
       repeat' (first | rfl | contradiction | split | simp only [raiseError_setPending, setXmlError_setPending, setNullDeref_setPending, setHeaderHash_setPending, setBinaryPool_setPending, addBinaryRefs_setPending, addDeletedObject_setPending, setMeta_setPending, randomUuid_setPending, cipherProcess_setPending, updGroup_setPending, updEntry_setPending, getGroup_setPending, getEntry_setPending, setPending_xmlError, setPending_m_strictMode, setPending_m_randomStream, setPending_m_binaryPool, setPending_m_binaryMap, setPending_m_groups, setPending_m_entries, setPending_m_tmpParent, setPending_rootGroup, setPending_hasError, setPending_group, setPending_entry, setPending_groups, setPending_entries, setPending_setPending]))
  have n_Times := hN
  clear hN
  by_cases hN : c.name = "IsExpanded"
  · have hn : c.name ∉ containerNames ∨ (b = true ∧ c.name = "Binary") :=
      Or.inl (by rw [hN]; decide)
    simp only [hN, String.reduceEq, if_true, if_false, readBool_ins h hn] <;>
      (
       try generalize readBool c st = A0
       try obtain ⟨v0, t0⟩ := A0
       try simp only [raiseError_setPending, setXmlError_setPending, setNullDeref_setPending, setHeaderHash_setPending, setBinaryPool_setPending, addBinaryRefs_setPending, addDeletedObject_setPending, setMeta_setPending, randomUuid_setPending, cipherProcess_setPending, updGroup_setPending, updEntry_setPending, getGroup_setPending, getEntry_setPending, setPending_xmlError, setPending_m_strictMode, setPending_m_randomStream, setPending_m_binaryPool, setPending_m_binaryMap, setPending_m_groups, setPending_m_entries, setPending_m_tmpParent, setPending_rootGroup, setPending_hasError, setPending_group, setPending_entry, setPending_groups, setPending_entries, setPending_setPending]
       repeat' (first | rfl | contradiction | split | simp only [raiseError_setPending, setXmlError_setPending, setNullDeref_setPending, setHeaderHash_setPending, setBinaryPool_setPending, addBinaryRefs_setPending, addDeletedObject_setPending, setMeta_setPending, randomUuid_setPending, cipherProcess_setPending, updGroup_setPending, updEntry_setPending, getGroup_setPending, getEntry_setPending, setPending_xmlError, setPending_m_strictMode, setPending_m_randomStream, setPending_m_binaryPool, setPending_m_binaryMap, setPending_m_groups, setPending_m_entries, setPending_m_tmpParent, setPending_rootGroup, setPending_hasError, setPending_group, setPending_entry, setPending_groups, setPending_entries, setPending_setPending]))
  have n_IsExpanded := hN
  clear hN
  by_cases hN : c.name = "DefaultAutoTypeSequence"
  · have hn : c.name ∉ containerNames ∨ (b = true ∧ c.name = "Binary") :=
      Or.inl (by rw [hN]; decide)
    simp only [hN, String.reduceEq, if_true, if_false, readString_ins h hn] <;>
      (
       try generalize readString c st = A0
       try obtain ⟨v0, t0⟩ := A0
       try simp only [raiseError_setPending, setXmlError_setPending, setNullDeref_setPending, setHeaderHash_setPending, setBinaryPool_setPending, addBinaryRefs_setPending, addDeletedObject_setPending, setMeta_setPending, randomUuid_setPending, cipherProcess_setPending, updGroup_setPending, updEntry_setPending, getGroup_setPending, getEntry_setPending, setPending_xmlError, setPending_m_strictMode, setPending_m_randomStream, setPending_m_binaryPool, setPending_m_binaryMap, setPending_m_groups, setPending_m_entries, setPending_m_tmpParent, setPending_rootGroup, setPending_hasError, setPending_group, setPending_entry, setPending_groups, setPending_entries, setPending_setPending]
       repeat' (first | rfl | contradiction | split | simp only [raiseError_setPending, setXmlError_setPending, setNullDeref_setPending, setHeaderHash_setPending, setBinaryPool_setPending, addBinaryRefs_setPending, addDeletedObject_setPending, setMeta_setPending, randomUuid_setPending, cipherProcess_setPending, updGroup_setPending, updEntry_setPending, getGroup_setPending, getEntry_setPending, setPending_xmlError, setPending_m_strictMode, setPending_m_randomStream, setPending_m_binaryPool, setPending_m_binaryMap, setPending_m_groups, setPending_m_entries, setPending_m_tmpParent, setPending_rootGroup, setPending_hasError, setPending_group, setPending_entry, setPending_groups, setPending_entries, setPending_setPending]))
  have n_DefaultAutoTypeSequence := hN
  clear hN
  by_cases hN : c.name = "EnableAutoType"
  · have hn : c.name ∉ containerNames ∨ (b = true ∧ c.name = "Binary") :=
      Or.inl (by rw [hN]; decide)
    simp only [hN, String.reduceEq, if_true, if_false, readString_ins h hn] <;>
      (
       try generalize readString c st = A0
       try obtain ⟨v0, t0⟩ := A0
       try simp only [raiseError_setPending, setXmlError_setPending, setNullDeref_setPending, setHeaderHash_setPending, setBinaryPool_setPending, addBinaryRefs_setPending, addDeletedObject_setPending, setMeta_setPending, randomUuid_setPending, cipherProcess_setPending, updGroup_setPending, updEntry_setPending, getGroup_setPending, getEntry_setPending, setPending_xmlError, setPending_m_strictMode, setPending_m_randomStream, setPending_m_binaryPool, setPending_m_binaryMap, setPending_m_groups, setPending_m_entries, setPending_m_tmpParent, setPending_rootGroup, setPending_hasError, setPending_group, setPending_entry, setPending_groups, setPending_entries, setPending_setPending]
       repeat' (first | rfl | contradiction | split | simp only [raiseError_setPending, setXmlError_setPending, setNullDeref_setPending, setHeaderHash_setPending, setBinaryPool_setPending, addBinaryRefs_setPending, addDeletedObject_setPending, setMeta_setPending, randomUuid_setPending, cipherProcess_setPending, updGroup_setPending, updEntry_setPending, getGroup_setPending, getEntry_setPending, setPending_xmlError, setPending_m_strictMode, setPending_m_randomStream, setPending_m_binaryPool, setPending_m_binaryMap, setPending_m_groups, setPending_m_entries, setPending_m_tmpParent, setPending_rootGroup, setPending_hasError, setPending_group, setPending_entry, setPending_groups, setPending_entries, setPending_setPending]))
  have n_EnableAutoType := hN
  clear hN
  by_cases hN : c.name = "EnableSearching"
  · have hn : c.name ∉ containerNames ∨ (b = true ∧ c.name = "Binary") :=
      Or.inl (by rw [hN]; decide)
    simp only [hN, String.reduceEq, if_true, if_false, readString_ins h hn] <;>
      (
       try generalize readString c st = A0
       try obtain ⟨v0, t0⟩ := A0
       try simp only [raiseError_setPending, setXmlError_setPending, setNullDeref_setPending, setHeaderHash_setPending, setBinaryPool_setPending, addBinaryRefs_setPending, addDeletedObject_setPending, setMeta_setPending, randomUuid_setPending, cipherProcess_setPending, updGroup_setPending, updEntry_setPending, getGroup_setPending, getEntry_setPending, setPending_xmlError, setPending_m_strictMode, setPending_m_randomStream, setPending_m_binaryPool, setPending_m_binaryMap, setPending_m_groups, setPending_m_entries, setPending_m_tmpParent, setPending_rootGroup, setPending_hasError, setPending_group, setPending_entry, setPending_groups, setPending_entries, setPending_setPending]
       repeat' (first | rfl | contradiction | split | simp only [raiseError_setPending, setXmlError_setPending, setNullDeref_setPending, setHeaderHash_setPending, setBinaryPool_setPending, addBinaryRefs_setPending, addDeletedObject_setPending, setMeta_setPending, randomUuid_setPending, cipherProcess_setPending, updGroup_setPending, updEntry_setPending, getGroup_setPending, getEntry_setPending, setPending_xmlError, setPending_m_strictMode, setPending_m_randomStream, setPending_m_binaryPool, setPending_m_binaryMap, setPending_m_groups, setPending_m_entries, setPending_m_tmpParent, setPending_rootGroup, setPending_hasError, setPending_group, setPending_entry, setPending_groups, setPending_entries, setPending_setPending]))
  have n_EnableSearching := hN
  clear hN
  by_cases hN : c.name = "LastTopVisibleEntry"
  · have hn : c.name ∉ containerNames ∨ (b = true ∧ c.name = "Binary") :=
      Or.inl (by rw [hN]; decide)
    simp only [hN, String.reduceEq, if_true, if_false, readUuid_ins env h hn] <;>
      (
       try generalize readUuid env c st = A0
       try obtain ⟨v0, t0⟩ := A0
       try simp only [raiseError_setPending, setXmlError_setPending, setNullDeref_setPending, setHeaderHash_setPending, setBinaryPool_setPending, addBinaryRefs_setPending, addDeletedObject_setPending, setMeta_setPending, randomUuid_setPending, cipherProcess_setPending, updGroup_setPending, updEntry_setPending, getGroup_setPending, getEntry_setPending, setPending_xmlError, setPending_m_strictMode, setPending_m_randomStream, setPending_m_binaryPool, setPending_m_binaryMap, setPending_m_groups, setPending_m_entries, setPending_m_tmpParent, setPending_rootGroup, setPending_hasError, setPending_group, setPending_entry, setPending_groups, setPending_entries, setPending_setPending]
       repeat' (first | rfl | contradiction | split | simp only [raiseError_setPending, setXmlError_setPending, setNullDeref_setPending, setHeaderHash_setPending, setBinaryPool_setPending, addBinaryRefs_setPending, addDeletedObject_setPending, setMeta_setPending, randomUuid_setPending, cipherProcess_setPending, updGroup_setPending, updEntry_setPending, getGroup_setPending, getEntry_setPending, setPending_xmlError, setPending_m_strictMode, setPending_m_randomStream, setPending_m_binaryPool, setPending_m_binaryMap, setPending_m_groups, setPending_m_entries, setPending_m_tmpParent, setPending_rootGroup, setPending_hasError, setPending_group, setPending_entry, setPending_groups, setPending_entries, setPending_setPending]))
  have n_LastTopVisibleEntry := hN
  clear hN
  simp only [n_UUID, n_Name, n_Notes, n_IconID, n_CustomIconUUID, n_Times, n_IsExpanded, n_DefaultAutoTypeSequence, n_EnableAutoType, n_EnableSearching, n_LastTopVisibleEntry, if_false, skipChild]

theorem parseGroupField_skip (env : Env) (group : Nat) {u : XmlElement} (hu : u.name ∉ recognizedBy "Group")
    (st : Reader) : parseGroupField env group u st = st := by
  simp [recognizedBy] at hu
  simp [parseGroupField, hu, skipChild]

theorem parseEntryField_ins (env : Env) (entry : Nat) {u : XmlElement} {b : Bool} {c d : XmlElement} (h : Inserted recognizedBy u b c d)
    (a : List (String × String)) (st : Reader) (q : List (List XmlElement)) :
    parseEntryField env entry d (a, st.setPending q) =
      ((parseEntryField env entry c (a, st)).1, (parseEntryField env entry c (a, st)).2.setPending q) := by
  obtain ⟨e1, e2, e3⟩ := inserted_head h
  have ha := inserted_attr h
  have hh := inserted_hasAttribute h
  unfold parseEntryField
  simp only [e1, ha, hh]
  by_cases hN : c.name = "UUID"
  · have hn : c.name ∉ containerNames ∨ (b = true ∧ c.name = "Binary") :=
      Or.inl (by rw [hN]; decide)
    simp only [hN, String.reduceEq, if_true, if_false, readUuid_ins env h hn] <;>
      (
       try generalize readUuid env c st = A0
       try obtain ⟨v0, t0⟩ := A0
       try simp only [raiseError_setPending, setXmlError_setPending, setNullDeref_setPending, setHeaderHash_setPending, setBinaryPool_setPending, addBinaryRefs_setPending, addDeletedObject_setPending, setMeta_setPending, randomUuid_setPending, cipherProcess_setPending, updGroup_setPending, updEntry_setPending, getGroup_setPending, getEntry_setPending, setPending_xmlError, setPending_m_strictMode, setPending_m_randomStream, setPending_m_binaryPool, setPending_m_binaryMap, setPending_m_groups, setPending_m_entries, setPending_m_tmpParent, setPending_rootGroup, setPending_hasError, setPending_group, setPending_entry, setPending_groups, setPending_entries, setPending_setPending]
       repeat' (first | rfl | contradiction | split | simp only [raiseError_setPending, setXmlError_setPending, setNullDeref_setPending, setHeaderHash_setPending, setBinaryPool_setPending, addBinaryRefs_setPending, addDeletedObject_setPending, setMeta_setPending, randomUuid_setPending, cipherProcess_setPending, updGroup_setPending, updEntry_setPending, getGroup_setPending, getEntry_setPending, setPending_xmlError, setPending_m_strictMode, setPending_m_randomStream, setPending_m_binaryPool, setPending_m_binaryMap, setPending_m_groups, setPending_m_entries, setPending_m_tmpParent, setPending_rootGroup, setPending_hasError, setPending_group, setPending_entry, setPending_groups, setPending_entries, setPending_setPending]))
  have n_UUID := hN
  clear hN
  by_cases hN : c.name = "IconID"
  · have hn : c.name ∉ containerNames ∨ (b = true ∧ c.name = "Binary") :=
      Or.inl (by rw [hN]; decide)
    simp only [hN, String.reduceEq, if_true, if_false, readNumber_ins env h hn] <;>
      (
       try generalize readNumber env c st = A0
       try obtain ⟨v0, t0⟩ := A0
       try simp only [raiseError_setPending, setXmlError_setPending, setNullDeref_setPending, setHeaderHash_setPending, setBinaryPool_setPending, addBinaryRefs_setPending, addDeletedObject_setPending, setMeta_setPending, randomUuid_setPending, cipherProcess_setPending, updGroup_setPending, updEntry_setPending, getGroup_setPending, getEntry_setPending, setPending_xmlError, setPending_m_strictMode, setPending_m_randomStream, setPending_m_binaryPool, setPending_m_binaryMap, setPending_m_groups, setPending_m_entries, setPending_m_tmpParent, setPending_rootGroup, setPending_hasError, setPending_group, setPending_entry, setPending_groups, setPending_entries, setPending_setPending]
       repeat' (first | rfl | contradiction | split | simp only [raiseError_setPending, setXmlError_setPending, setNullDeref_setPending, setHeaderHash_setPending, setBinaryPool_setPending, addBinaryRefs_setPending, addDeletedObject_setPending, setMeta_setPending, randomUuid_setPending, cipherProcess_setPending, updGroup_setPending, updEntry_setPending, getGroup_setPending, getEntry_setPending, setPending_xmlError, setPending_m_strictMode, setPending_m_randomStream, setPending_m_binaryPool, setPending_m_binaryMap, setPending_m_groups, setPending_m_entries, setPending_m_tmpParent, setPending_rootGroup, setPending_hasError, setPending_group, setPending_entry, setPending_groups, setPending_entries, setPending_setPending]))
  have n_IconID := hN
  clear hN
  by_cases hN : c.name = "CustomIconUUID"
  · have hn : c.name ∉ containerNames ∨ (b = true ∧ c.name = "Binary") :=
      Or.inl (by rw [hN]; decide)
    simp only [hN, String.reduceEq, if_true, if_false, readUuid_ins env h hn] <;>
      (
       try generalize readUuid env c st = A0
       try obtain ⟨v0, t0⟩ := A0
       try simp only [raiseError_setPending, setXmlError_setPending, setNullDeref_setPending, setHeaderHash_setPending, setBinaryPool_setPending, addBinaryRefs_setPending, addDeletedObject_setPending, setMeta_setPending, randomUuid_setPending, cipherProcess_setPending, updGroup_setPending, updEntry_setPending, getGroup_setPending, getEntry_setPending, setPending_xmlError, setPending_m_strictMode, setPending_m_randomStream, setPending_m_binaryPool, setPending_m_binaryMap, setPending_m_groups, setPending_m_entries, setPending_m_tmpParent, setPending_rootGroup, setPending_hasError, setPending_group, setPending_entry, setPending_groups, setPending_entries, setPending_setPending]
       repeat' (first | rfl | contradiction | split | simp only [raiseError_setPending, setXmlError_setPending, setNullDeref_setPending, setHeaderHash_setPending, setBinaryPool_setPending, addBinaryRefs_setPending, addDeletedObject_setPending, setMeta_setPending, randomUuid_setPending, cipherProcess_setPending, updGroup_setPending, updEntry_setPending, getGroup_setPending, getEntry_setPending, setPending_xmlError, setPending_m_strictMode, setPending_m_randomStream, setPending_m_binaryPool, setPending_m_binaryMap, setPending_m_groups, setPending_m_entries, setPending_m_tmpParent, setPending_rootGroup, setPending_hasError, setPending_group, setPending_entry, setPending_groups, setPending_entries, setPending_setPending]))
  have n_CustomIconUUID := hN
  clear hN
  by_cases hN : c.name = "ForegroundColor"
  · have hn : c.name ∉ containerNames ∨ (b = true ∧ c.name = "Binary") :=
      Or.inl (by rw [hN]; decide)
    simp only [hN, String.reduceEq, if_true, if_false, readColor_ins env h hn] <;>
      (
       try generalize readColor env c st = A0
       try obtain ⟨v0, t0⟩ := A0
       try simp only [raiseError_setPending, setXmlError_setPending, setNullDeref_setPending, setHeaderHash_setPending, setBinaryPool_setPending, addBinaryRefs_setPending, addDeletedObject_setPending, setMeta_setPending, randomUuid_setPending, cipherProcess_setPending, updGroup_setPending, updEntry_setPending, getGroup_setPending, getEntry_setPending, setPending_xmlError, setPending_m_strictMode, setPending_m_randomStream, setPending_m_binaryPool, setPending_m_binaryMap, setPending_m_groups, setPending_m_entries, setPending_m_tmpParent, setPending_rootGroup, setPending_hasError, setPending_group, setPending_entry, setPending_groups, setPending_entries, setPending_setPending]
       repeat' (first | rfl | contradiction | split | simp only [raiseError_setPending, setXmlError_setPending, setNullDeref_setPending, setHeaderHash_setPending, setBinaryPool_setPending, addBinaryRefs_setPending, addDeletedObject_setPending, setMeta_setPending, randomUuid_setPending, cipherProcess_setPending, updGroup_setPending, updEntry_setPending, getGroup_setPending, getEntry_setPending, setPending_xmlError, setPending_m_strictMode, setPending_m_randomStream, setPending_m_binaryPool, setPending_m_binaryMap, setPending_m_groups, setPending_m_entries, setPending_m_tmpParent, setPending_rootGroup, setPending_hasError, setPending_group, setPending_entry, setPending_groups, setPending_entries, setPending_setPending]))
  have n_ForegroundColor := hN
  clear hN
  by_cases hN : c.name = "BackgroundColor"
  · have hn : c.name ∉ containerNames ∨ (b = true ∧ c.name = "Binary") :=
      Or.inl (by rw [hN]; decide)
    simp only [hN, String.reduceEq, if_true, if_false, readColor_ins env h hn] <;>
      (
       try generalize readColor env c st = A0
       try obtain ⟨v0, t0⟩ := A0
       try simp only [raiseError_setPending, setXmlError_setPending, setNullDeref_setPending, setHeaderHash_setPending, setBinaryPool_setPending, addBinaryRefs_setPending, addDeletedObject_setPending, setMeta_setPending, randomUuid_setPending, cipherProcess_setPending, updGroup_setPending, updEntry_setPending, getGroup_setPending, getEntry_setPending, setPending_xmlError, setPending_m_strictMode, setPending_m_randomStream, setPending_m_binaryPool, setPending_m_binaryMap, setPending_m_groups, setPending_m_entries, setPending_m_tmpParent, setPending_rootGroup, setPending_hasError, setPending_group, setPending_entry, setPending_groups, setPending_entries, setPending_setPending]
       repeat' (first | rfl | contradiction | split | simp only [raiseError_setPending, setXmlError_setPending, setNullDeref_setPending, setHeaderHash_setPending, setBinaryPool_setPending, addBinaryRefs_setPending, addDeletedObject_setPending, setMeta_setPending, randomUuid_setPending, cipherProcess_setPending, updGroup_setPending, updEntry_setPending, getGroup_setPending, getEntry_setPending, setPending_xmlError, setPending_m_strictMode, setPending_m_randomStream, setPending_m_binaryPool, setPending_m_binaryMap, setPending_m_groups, setPending_m_entries, setPending_m_tmpParent, setPending_rootGroup, setPending_hasError, setPending_group, setPending_entry, setPending_groups, setPending_entries, setPending_setPending]))
  have n_BackgroundColor := hN
  clear hN
  by_cases hN : c.name = "OverrideURL"
  · have hn : c.name ∉ containerNames ∨ (b = true ∧ c.name = "Binary") :=
      Or.inl (by rw [hN]; decide)
    simp only [hN, String.reduceEq, if_true, if_false, readString_ins h hn] <;>
      (
       try generalize readString c st = A0
       try obtain ⟨v0, t0⟩ := A0
       try simp only [raiseError_setPending, setXmlError_setPending, setNullDeref_setPending, setHeaderHash_setPending, setBinaryPool_setPending, addBinaryRefs_setPending, addDeletedObject_setPending, setMeta_setPending, randomUuid_setPending, cipherProcess_setPending, updGroup_setPending, updEntry_setPending, getGroup_setPending, getEntry_setPending, setPending_xmlError, setPending_m_strictMode, setPending_m_randomStream, setPending_m_binaryPool, setPending_m_binaryMap, setPending_m_groups, setPending_m_entries, setPending_m_tmpParent, setPending_rootGroup, setPending_hasError, setPending_group, setPending_entry, setPending_groups, setPending_entries, setPending_setPending]
       repeat' (first | rfl | contradiction | split | simp only [raiseError_setPending, setXmlError_setPending, setNullDeref_setPending, setHeaderHash_setPending, setBinaryPool_setPending, addBinaryRefs_setPending, addDeletedObject_setPending, setMeta_setPending, randomUuid_setPending, cipherProcess_setPending, updGroup_setPending, updEntry_setPending, getGroup_setPending, getEntry_setPending, setPending_xmlError, setPending_m_strictMode, setPending_m_randomStream, setPending_m_binaryPool, setPending_m_binaryMap, setPending_m_groups, setPending_m_entries, setPending_m_tmpParent, setPending_rootGroup, setPending_hasError, setPending_group, setPending_entry, setPending_groups, setPending_entries, setPending_setPending]))
  have n_OverrideURL := hN
  clear hN
  by_cases hN : c.name = "Tags"
  · have hn : c.name ∉ containerNames ∨ (b = true ∧ c.name = "Binary") :=
      Or.inl (by rw [hN]; decide)
    simp only [hN, String.reduceEq, if_true, if_false, readString_ins h hn] <;>
      (
       try generalize readString c st = A0
       try obtain ⟨v0, t0⟩ := A0
       try simp only [raiseError_setPending, setXmlError_setPending, setNullDeref_setPending, setHeaderHash_setPending, setBinaryPool_setPending, addBinaryRefs_setPending, addDeletedObject_setPending, setMeta_setPending, randomUuid_setPending, cipherProcess_setPending, updGroup_setPending, updEntry_setPending, getGroup_setPending, getEntry_setPending, setPending_xmlError, setPending_m_strictMode, setPending_m_randomStream, setPending_m_binaryPool, setPending_m_binaryMap, setPending_m_groups, setPending_m_entries, setPending_m_tmpParent, setPending_rootGroup, setPending_hasError, setPending_group, setPending_entry, setPending_groups, setPending_entries, setPending_setPending]
       repeat' (first | rfl | contradiction | split | simp only [raiseError_setPending, setXmlError_setPending, setNullDeref_setPending, setHeaderHash_setPending, setBinaryPool_setPending, addBinaryRefs_setPending, addDeletedObject_setPending, setMeta_setPending, randomUuid_setPending, cipherProcess_setPending, updGroup_setPending, updEntry_setPending, getGroup_setPending, getEntry_setPending, setPending_xmlError, setPending_m_strictMode, setPending_m_randomStream, setPending_m_binaryPool, setPending_m_binaryMap, setPending_m_groups, setPending_m_entries, setPending_m_tmpParent, setPending_rootGroup, setPending_hasError, setPending_group, setPending_entry, setPending_groups, setPending_entries, setPending_setPending]))
  have n_Tags := hN
  clear hN
  by_cases hN : c.name = "Times"
  · simp only [hN, String.reduceEq, if_true, if_false, parseTimes_ins env h hN] <;>
      (
       try generalize parseTimes env c st = A0
       try obtain ⟨v0, t0⟩ := A0
       try simp only [raiseError_setPending, setXmlError_setPending, setNullDeref_setPending, setHeaderHash_setPending, setBinaryPool_setPending, addBinaryRefs_setPending, addDeletedObject_setPending, setMeta_setPending, randomUuid_setPending, cipherProcess_setPending, updGroup_setPending, updEntry_setPending, getGroup_setPending, getEntry_setPending, setPending_xmlError, setPending_m_strictMode, setPending_m_randomStream, setPending_m_binaryPool, setPending_m_binaryMap, setPending_m_groups, setPending_m_entries, setPending_m_tmpParent, setPending_rootGroup, setPending_hasError, setPending_group, setPending_entry, setPending_groups, setPending_entries, setPending_setPending]
       repeat' (first | rfl | contradiction | split | simp only [raiseError_setPending, setXmlError_setPending, setNullDeref_setPending, setHeaderHash_setPending, setBinaryPool_setPending, addBinaryRefs_setPending, addDeletedObject_setPending, setMeta_setPending, randomUuid_setPending, cipherProcess_setPending, updGroup_setPending, updEntry_setPending, getGroup_setPending, getEntry_setPending, setPending_xmlError, setPending_m_strictMode, setPending_m_randomStream, setPending_m_binaryPool, setPending_m_binaryMap, setPending_m_groups, setPending_m_entries, setPending_m_tmpParent, setPending_rootGroup, setPending_hasError, setPending_group, setPending_entry, setPending_groups, setPending_entries, setPending_setPending]))
  have n_Times := hN
  clear hN
  by_cases hN : c.name = "String"
  · simp only [hN, String.reduceEq, if_true, if_false, parseEntryString_ins env entry h hN] <;>
      (
       try generalize parseEntryString env entry c st = A0
       try simp only [raiseError_setPending, setXmlError_setPending, setNullDeref_setPending, setHeaderHash_setPending, setBinaryPool_setPending, addBinaryRefs_setPending, addDeletedObject_setPending, setMeta_setPending, randomUuid_setPending, cipherProcess_setPending, updGroup_setPending, updEntry_setPending, getGroup_setPending, getEntry_setPending, setPending_xmlError, setPending_m_strictMode, setPending_m_randomStream, setPending_m_binaryPool, setPending_m_binaryMap, setPending_m_groups, setPending_m_entries, setPending_m_tmpParent, setPending_rootGroup, setPending_hasError, setPending_group, setPending_entry, setPending_groups, setPending_entries, setPending_setPending]
       repeat' (first | rfl | contradiction | split | simp only [raiseError_setPending, setXmlError_setPending, setNullDeref_setPending, setHeaderHash_setPending, setBinaryPool_setPending, addBinaryRefs_setPending, addDeletedObject_setPending, setMeta_setPending, randomUuid_setPending, cipherProcess_setPending, updGroup_setPending, updEntry_setPending, getGroup_setPending, getEntry_setPending, setPending_xmlError, setPending_m_strictMode, setPending_m_randomStream, setPending_m_binaryPool, setPending_m_binaryMap, setPending_m_groups, setPending_m_entries, setPending_m_tmpParent, setPending_rootGroup, setPending_hasError, setPending_group, setPending_entry, setPending_groups, setPending_entries, setPending_setPending]))
  have n_String := hN
  clear hN
  by_cases hN : c.name = "Binary"
  · simp only [hN, String.reduceEq, if_true, if_false, parseEntryBinary_ins env entry h hN] <;>
      (
       try generalize parseEntryBinary env entry c st = A0
       try obtain ⟨v0, t0⟩ := A0
       try simp only [raiseError_setPending, setXmlError_setPending, setNullDeref_setPending, setHeaderHash_setPending, setBinaryPool_setPending, addBinaryRefs_setPending, addDeletedObject_setPending, setMeta_setPending, randomUuid_setPending, cipherProcess_setPending, updGroup_setPending, updEntry_setPending, getGroup_setPending, getEntry_setPending, setPending_xmlError, setPending_m_strictMode, setPending_m_randomStream, setPending_m_binaryPool, setPending_m_binaryMap, setPending_m_groups, setPending_m_entries, setPending_m_tmpParent, setPending_rootGroup, setPending_hasError, setPending_group, setPending_entry, setPending_groups, setPending_entries, setPending_setPending]
       repeat' (first | rfl | contradiction | split | simp only [raiseError_setPending, setXmlError_setPending, setNullDeref_setPending, setHeaderHash_setPending, setBinaryPool_setPending, addBinaryRefs_setPending, addDeletedObject_setPending, setMeta_setPending, randomUuid_setPending, cipherProcess_setPending, updGroup_setPending, updEntry_setPending, getGroup_setPending, getEntry_setPending, setPending_xmlError, setPending_m_strictMode, setPending_m_randomStream, setPending_m_binaryPool, setPending_m_binaryMap, setPending_m_groups, setPending_m_entries, setPending_m_tmpParent, setPending_rootGroup, setPending_hasError, setPending_group, setPending_entry, setPending_groups, setPending_entries, setPending_setPending]))
  have n_Binary := hN
  clear hN
  by_cases hN : c.name = "AutoType"
  · simp only [hN, String.reduceEq, if_true, if_false, parseAutoType_ins env entry h hN] <;>
      (
       try generalize parseAutoType env entry c st = A0
       try simp only [raiseError_setPending, setXmlError_setPending, setNullDeref_setPending, setHeaderHash_setPending, setBinaryPool_setPending, addBinaryRefs_setPending, addDeletedObject_setPending, setMeta_setPending, randomUuid_setPending, cipherProcess_setPending, updGroup_setPending, updEntry_setPending, getGroup_setPending, getEntry_setPending, setPending_xmlError, setPending_m_strictMode, setPending_m_randomStream, setPending_m_binaryPool, setPending_m_binaryMap, setPending_m_groups, setPending_m_entries, setPending_m_tmpParent, setPending_rootGroup, setPending_hasError, setPending_group, setPending_entry, setPending_groups, setPending_entries, setPending_setPending]
       repeat' (first | rfl | contradiction | split | simp only [raiseError_setPending, setXmlError_setPending, setNullDeref_setPending, setHeaderHash_setPending, setBinaryPool_setPending, addBinaryRefs_setPending, addDeletedObject_setPending, setMeta_setPending, randomUuid_setPending, cipherProcess_setPending, updGroup_setPending, updEntry_setPending, getGroup_setPending, getEntry_setPending, setPending_xmlError, setPending_m_strictMode, setPending_m_randomStream, setPending_m_binaryPool, setPending_m_binaryMap, setPending_m_groups, setPending_m_entries, setPending_m_tmpParent, setPending_rootGroup, setPending_hasError, setPending_group, setPending_entry, setPending_groups, setPending_entries, setPending_setPending]))
  have n_AutoType := hN
  clear hN
  simp only [n_UUID, n_IconID, n_CustomIconUUID, n_ForegroundColor, n_BackgroundColor, n_OverrideURL, n_Tags, n_Times, n_String, n_Binary, n_AutoType, if_false, skipChild]

theorem parseEntryField_skip (env : Env) (entry : Nat) {u : XmlElement} (hu : u.name ∉ recognizedBy "Entry")
    (s : List (String × String) × Reader) : parseEntryField env entry u s = s := by
  simp [recognizedBy] at hu
  simp [parseEntryField, hu, skipChild]

/-! ### The closing code of the parse functions and the cursor -/

/-! ### C26: the closing code of the parse functions does not look at the cursor -/

theorem ensureGroupUuid_setPending (env : Env) (g : Nat) (st : Reader)
    (q : List (List XmlElement)) :
    ensureGroupUuid env g (st.setPending q) = (ensureGroupUuid env g st).setPending q := by
  unfold ensureGroupUuid
  simp only [setPending_group, setPending_m_strictMode, randomUuid_setPending,
    updGroup_setPending]
  split <;> rfl

theorem ensureEntryUuid_setPending (env : Env) (e : Nat) (st : Reader)
    (q : List (List XmlElement)) :
    ensureEntryUuid env e (st.setPending q) = (ensureEntryUuid env e st).setPending q := by
  unfold ensureEntryUuid
  simp only [setPending_entry, setPending_m_strictMode, randomUuid_setPending,
    updEntry_setPending]
  split <;> rfl

theorem mergeGroup_setPending (g : Nat) (st : Reader) (q : List (List XmlElement)) :
    mergeGroup g (st.setPending q) = ((mergeGroup g st).1, (mergeGroup g st).2.setPending q) := by
  unfold mergeGroup
  simp only [setPending_group, setPending_hasError, getGroup_setPending, raiseError_setPending]
  generalize getGroup (st.group g).m_uuid st = A
  obtain ⟨o, t⟩ := A
  cases o <;>
    simp only [setPending_group, updGroup_setPending, deleteGroup_setPending,
      defGroup_setPending] <;>
    repeat' (first | rfl | split)

theorem mergeEntry_setPending (history : Bool) (e : Nat) (st : Reader)
    (q : List (List XmlElement)) :
    mergeEntry history e (st.setPending q) =
      ((mergeEntry history e st).1, (mergeEntry history e st).2.setPending q) := by
  unfold mergeEntry
  simp only [setPending_entry, setPending_hasError, getEntry_setPending, raiseError_setPending,
    updEntry_setPending]
  generalize getEntry (st.entry e).m_uuid st = A
  obtain ⟨o, t⟩ := A
  cases o <;>
    simp only [setPending_entry, updEntry_setPending, deleteEntry_setPending,
      defEntry_setPending] <;>
    repeat' (first | rfl | split)

theorem foldl_setPending {α : Type} (f : Reader → α → Reader)
    (hf : ∀ s a q, f (s.setPending q) a = (f s a).setPending q) (xs : List α) (st : Reader)
    (q : List (List XmlElement)) :
    xs.foldl f (st.setPending q) = (xs.foldl f st).setPending q := by
  induction xs generalizing st with
  | nil => rfl
  | cons x rest ih =>
    simp only [List.foldl_cons]
    rw [hf, ih]

theorem parseGroupFinish_setPending (env : Env) (l : GroupLocals) (st : Reader)
    (q : List (List XmlElement)) :
    parseGroupFinish env l (st.setPending q) =
      ((parseGroupFinish env l st).1, (parseGroupFinish env l st).2.setPending q) := by
  unfold parseGroupFinish
  simp only [ensureGroupUuid_setPending, mergeGroup_setPending]
  rw [foldl_setPending _ (fun s a k => setParent_setPending s k a _),
    foldl_setPending _ (fun s a k => setGroup_setPending s k a _)]

theorem addHistoryItems_setPending (entry : Nat) (items : List Nat) (st : Reader)
    (q : List (List XmlElement)) :
    addHistoryItems entry items (st.setPending q) =
      (addHistoryItems entry items st).setPending q := by
  induction items generalizing st with
  | nil => rfl
  | cons x rest ih =>
    unfold addHistoryItems
    simp only [setPending_entry, setPending_m_strictMode, raiseError_setPending,
      updEntry_setPending]
    split
    · split
      · simp only [updEntry_setPending, ih]
      · simp only [updEntry_setPending, ih]
    · simp only [updEntry_setPending, ih]

theorem parseEntryFinish_setPending (env : Env) (history : Bool) (l : EntryLocals) (st : Reader)
    (q : List (List XmlElement)) :
    parseEntryFinish env history l (st.setPending q) =
      ((parseEntryFinish env history l st).1,
        (parseEntryFinish env history l st).2.setPending q) := by
  unfold parseEntryFinish
  simp only [ensureEntryUuid_setPending, mergeEntry_setPending, addHistoryItems_setPending,
    addBinaryRefs_setPending]

theorem resolveBinaries_setPending (items : List (String × Nat × String)) (st : Reader)
    (q : List (List XmlElement)) :
    resolveBinaries items (st.setPending q) = (resolveBinaries items st).setPending q := by
  induction items generalizing st with
  | nil => rfl
  | cons x rest ih =>
    obtain ⟨id, entry, name⟩ := x
    unfold resolveBinaries
    simp only [setPending_m_binaryPool]
    split <;> simp only [setBinaryPool_setPending, updEntry_setPending, ih,
      setPending_m_binaryPool]

theorem enableUpdates_setPending (st : Reader) (q : List (List XmlElement)) :
    enableUpdates (st.setPending q) = (enableUpdates st).setPending q := by
  unfold enableUpdates
  simp only [setMeta_setPending, setPending_m_groups, setPending_m_entries]
  rw [foldl_setPending _ (fun s a k => updGroup_setPending s k _ _)]
  simp only [setPending_m_entries]
  rw [foldl_setPending]
  intro s a k
  simp only [updEntry_setPending, setPending_entry]
  rw [foldl_setPending _ (fun s a k => updEntry_setPending s k _ _)]

theorem readDatabaseFinish_setPending (env : Env) (ok : Bool) (st : Reader)
    (q : List (List XmlElement)) :
    readDatabaseFinish env ok (st.setPending q) = (readDatabaseFinish env ok st).setPending q := by
  unfold readDatabaseFinish
  simp only [raiseError_setPending, setPending_m_binaryMap, resolveBinaries_setPending,
    enableUpdates_setPending]
  split <;> rfl

/-! ### The decode of a document with an element that no loop tests for -/

/-! ### C26: the loops that read from the cursor -/

theorem sameBut_refl (u : XmlElement) (st : Reader) : Reader.SameBut u st st :=
  ⟨st.pending, InsertedStack.refl _, (setPending_self st).symm⟩

theorem sameBut_of {u : XmlElement} {s t : Reader} {p q : List (List XmlElement)}
    (hp : s.pending = p) (hs : InsertedStack u p q) (ht : t = s.setPending q) :
    Reader.SameBut u s t := by
  subst hp
  exact ⟨q, hs, ht⟩

/-- The cursor after the start of a child element that one of the five loops
reads through with a loop of its own, or goes on inside. -/
theorem open_stack {u : XmlElement} {x y : XmlElement} {R S : List (List XmlElement)}
    (hI : Inserted recognizedIn u false x y) (hR : InsertedStack u R S) (hxy : x = y ∨ S = R)
    (hn : recognizedIn x.name = streamNames ∧ x.name ≠ "Binaries") :
    InsertedStack u (x.children :: R) (y.children :: S) := by
  rcases hxy with h | h
  · subst h
    exact InsertedStack.deeper _ _ _ hR
  · subst h
    have hl := inserted_children hI
    rw [hn.1] at hl
    have hd : decide (x.name = "Binaries") = false := by simpa using hn.2
    rw [hd] at hl
    exact InsertedStack.top _ _ _ hl

/-- What the cursor does at the start of a round of a loop, in two states that
are the same but for an insertion in the cursor: both loops end, or both enter
the same element, or the same with the insertion in it, or the second enters
the inserted element, which the first does not see. -/
theorem readNext_sameBut {u : XmlElement} {st st' : Reader} (h : Reader.SameBut u st st') :
    (∃ s1 s1', readNextStartElement st = (none, s1) ∧
      readNextStartElement st' = (none, s1') ∧ Reader.SameBut u s1 s1') ∨
    (∃ x y R S,
      readNextStartElement st = (some x, st.setPending (x.children :: R)) ∧
      readNextStartElement st' = (some y, st.setPending (y.children :: S)) ∧
      Inserted recognizedIn u false x y ∧ InsertedStack u R S ∧ (x = y ∨ S = R)) ∨
    (st.xmlError = false ∧ u.name ∉ streamNames ∧
      readNextStartElement st' = (some u, st.setPending (u.children :: st.pending))) := by
  obtain ⟨q, hq, rfl⟩ := h
  by_cases hx : st.xmlError = true
  · refine Or.inl ⟨st, st.setPending q, ?_, ?_, ⟨q, hq, rfl⟩⟩
    · simp [readNextStartElement, hx]
    · simp [readNextStartElement, hx]
  have hx0 : st.xmlError = false := by simpa using hx
  have hx1 : (st.setPending q).xmlError = false := hx0
  generalize hp : st.pending = p at hq
  have same : ∀ p, st.pending = p →
      (∃ s1 s1', readNextStartElement st = (none, s1) ∧
        readNextStartElement (st.setPending p) = (none, s1') ∧ Reader.SameBut u s1 s1') ∨
      (∃ x y R S,
        readNextStartElement st = (some x, st.setPending (x.children :: R)) ∧
        readNextStartElement (st.setPending p) = (some y, st.setPending (y.children :: S)) ∧
        Inserted recognizedIn u false x y ∧ InsertedStack u R S ∧ (x = y ∨ S = R)) := by
    intro p hp
    rw [← hp, setPending_self]
    cases hpp : st.pending with
    | nil =>
      refine Or.inl ⟨st.setXmlError, st.setXmlError, ?_, ?_, sameBut_refl _ _⟩ <;>
        simp [readNextStartElement, hx0, hpp]
    | cons l up =>
      cases l with
      | nil =>
        exact Or.inl ⟨_, _, readNextStartElement_nil hx0 hpp, readNextStartElement_nil hx0 hpp,
          sameBut_refl _ _⟩
      | cons x rest =>
        exact Or.inr ⟨x, x, rest :: up, rest :: up, readNextStartElement_cons hx0 hpp,
          readNextStartElement_cons hx0 hpp, Inserted.refl _ _, InsertedStack.refl _, Or.inl rfl⟩
  cases hq with
  | refl =>
    rcases same _ hp with a | a
    · exact Or.inl a
    · exact Or.inr (Or.inl a)
  | top l m up hl =>
    cases hl with
    | refl =>
      rcases same _ hp with a | a
      · exact Or.inl a
      · exact Or.inr (Or.inl a)
    | here pre post hu =>
      cases pre with
      | nil =>
        refine Or.inr (Or.inr ⟨hx0, hu, ?_⟩)
        rw [readNextStartElement_cons hx1 rfl]
        rfl
      | cons x pre2 =>
        refine Or.inr (Or.inl ⟨x, x, (pre2 ++ post) :: up, (pre2 ++ u :: post) :: up,
          readNextStartElement_cons hx0 hp, ?_, Inserted.refl _ _,
          InsertedStack.top _ _ _ (InsertedList.here pre2 post hu), Or.inl rfl⟩)
        rw [readNextStartElement_cons hx1 rfl]
        rfl
    | inside pre c d post hc =>
      cases pre with
      | nil =>
        refine Or.inr (Or.inl ⟨c, d, post :: up, post :: up,
          readNextStartElement_cons hx0 hp, ?_, hc, InsertedStack.refl _, Or.inr rfl⟩)
        rw [readNextStartElement_cons hx1 rfl]
        rfl
      | cons x pre2 =>
        refine Or.inr (Or.inl ⟨x, x, (pre2 ++ c :: post) :: up, (pre2 ++ d :: post) :: up,
          readNextStartElement_cons hx0 hp, ?_, Inserted.refl _ _,
          InsertedStack.top _ _ _ (InsertedList.inside pre2 c d post hc), Or.inl rfl⟩)
        rw [readNextStartElement_cons hx1 rfl]
        rfl
  | deeper l up vp hs =>
    cases l with
    | nil =>
      refine Or.inl ⟨st.setPending up, st.setPending vp, readNextStartElement_nil hx0 hp, ?_,
        ⟨vp, hs, rfl⟩⟩
      rw [readNextStartElement_nil hx1 rfl]
      rfl
    | cons x rest =>
      refine Or.inr (Or.inl ⟨x, x, rest :: up, rest :: vp, readNextStartElement_cons hx0 hp, ?_,
        Inserted.refl _ _, InsertedStack.deeper _ _ _ hs, Or.inl rfl⟩)
      rw [readNextStartElement_cons hx1 rfl]
      rfl

theorem sameBut_endElement {u : XmlElement} {t : Reader} {c c2 : List XmlElement}
    {R S : List (List XmlElement)} (hp : t.pending = c :: R) (hR : InsertedStack u R S) :
    Reader.SameBut u t.endElement (t.setPending (c2 :: S)).endElement :=
  sameBut_of (endElement_pending hp) hR rfl

theorem recognizedIn_stream (n : String)
    (h : n = "KeePassFile" ∨ n = "Root" ∨ n = "Group" ∨ n = "Entry" ∨ n = "History") :
    recognizedIn n = streamNames ∧ n ≠ "Binaries" := by
  rcases h with h | h | h | h | h <;> subst h <;> exact ⟨rfl, by decide⟩

theorem stream_ne {u : XmlElement} (hu : u.name ∉ streamNames) (n : String)
    (hn : n ∈ streamNames) : ¬ u.name = n := by
  intro h
  rw [h] at hu
  exact hu hn

/-- The loops of `parseEntry` and `parseEntryHistory` give the same result, but
for the cursor, in two states that are the same but for an insertion in the
cursor; the second run takes one more round at most. -/
theorem entry_sim (env : Env) (u : XmlElement) (n : Nat) :
    (∀ history l st st' r, Reader.SameBut u st st' →
      parseEntryWhile env n history l st = some r →
      ∃ r', parseEntryWhile env (n + 1) history l st' = some r' ∧ r'.1 = r.1 ∧
        Reader.SameBut u r.2 r'.2) ∧
    (∀ history st st' r, Reader.SameBut u st st' →
      parseEntry env n history st = some r →
      ∃ r', parseEntry env (n + 1) history st' = some r' ∧ r'.1 = r.1 ∧
        Reader.SameBut u r.2 r'.2) ∧
    (∀ items st st' r, Reader.SameBut u st st' →
      parseEntryHistoryWhile env n items st = some r →
      ∃ r', parseEntryHistoryWhile env (n + 1) items st' = some r' ∧ r'.1 = r.1 ∧
        Reader.SameBut u r.2 r'.2) ∧
    (∀ st st' r, Reader.SameBut u st st' →
      parseEntryHistory env n st = some r →
      ∃ r', parseEntryHistory env (n + 1) st' = some r' ∧ r'.1 = r.1 ∧
        Reader.SameBut u r.2 r'.2) := by
  induction n with
  | zero => simp [parseEntryWhile, parseEntry, parseEntryHistoryWhile, parseEntryHistory]
  | succ n ih =>
    obtain ⟨ihW, ihE, ihHW, ihH⟩ := ih
    refine ⟨?_, ?_, ?_, ?_⟩
    · intro history l st st' r hS hr0
      have hr := hr0
      rw [parseEntryWhile] at hr
      rw [parseEntryWhile]
      rcases readNext_sameBut hS with ⟨s1, s1', a1, a2, a3⟩ | ⟨x, y, R, S, a1, a2, hI, hR, hxy⟩ |
        ⟨hx, hu, a2⟩
      · rw [a1] at hr
        cases hr
        rw [a2]
        exact ⟨_, rfl, rfl, a3⟩
      · rw [a1] at hr
        rw [a2]
        simp only [(inserted_head hI).1] at hr ⊢
        by_cases hname : x.name = "History"
        · simp only [hname, if_true] at hr ⊢
          have hopen := open_stack hI hR hxy (recognizedIn_stream _ (by simp [hname]))
          cases history with
          | true =>
            simp only [if_true] at hr ⊢
            exact ihW _ _ ((st.setPending (x.children :: R)).raiseError _)
              ((st.setPending (y.children :: S)).raiseError _) r ⟨_, hopen, rfl⟩ hr
          | false =>
            simp only [Bool.false_eq_true, if_false] at hr ⊢
            cases hh : parseEntryHistory env n (st.setPending (x.children :: R)) with
            | none =>
              rw [hh] at hr
              cases hr
            | some w =>
              rw [hh] at hr
              obtain ⟨w2, k1, k2, k3⟩ := ihH (st.setPending (x.children :: R))
                (st.setPending (y.children :: S)) w ⟨_, hopen, rfl⟩ hh
              rw [k1]
              simp only at hr ⊢
              rw [k2]
              exact ihW _ _ _ _ r k3 hr
        · simp only [hname, if_false] at hr ⊢
          have e := parseEntryField_ins env l.entry (inserted_local hI) l.binaryRefs
            (st.setPending (x.children :: R)) (y.children :: S)
          rw [setPending_setPending] at e
          rw [e]
          exact ihW _ _ _ _ r (sameBut_endElement
            ((parseEntryField_pending env l.entry x _).trans rfl) hR) hr
      · rw [a2]
        have hn1 : ¬ u.name = "History" := stream_ne hu _ (by decide)
        simp only [hn1, if_false]
        rw [parseEntryField_skip env l.entry
          (recognizedBy_of_recognizedIn (show u.name ∉ recognizedIn "Entry" from hu))]
        have e : (st.setPending (u.children :: st.pending)).endElement = st := setPending_self st
        rw [e]
        exact ⟨r, hr0, rfl, sameBut_refl _ _⟩
    · intro history st st' r hS hr
      obtain ⟨q, hq, rfl⟩ := hS
      rw [parseEntry_succ] at hr ⊢
      simp only [newEntry_setPending, setPending_entries, updEntry_setPending]
      cases hw : parseEntryWhile env n history ⟨st.entries.length, [], []⟩
          (st.newEntry.2.updEntry st.entries.length
            (fun e => { e with m_updateTimeinfo := false })) with
      | none =>
        rw [hw] at hr
        cases hr
      | some w =>
        rw [hw] at hr
        cases hr
        obtain ⟨w2, k1, k2, k3⟩ := ihW history ⟨st.entries.length, [], []⟩
          (st.newEntry.2.updEntry st.entries.length (fun e => { e with m_updateTimeinfo := false }))
          ((st.newEntry.2.updEntry st.entries.length
            (fun e => { e with m_updateTimeinfo := false })).setPending q) w
          (sameBut_of (by simp [Reader.newEntry]) hq rfl) hw
        rw [k1]
        obtain ⟨q2, hq2, e2⟩ := k3
        simp only
        rw [k2, e2, parseEntryFinish_setPending]
        refine ⟨_, rfl, rfl, ?_⟩
        exact sameBut_of (parseEntryFinish_pending env history w.1 w.2) hq2 rfl
    · intro items st st' r hS hr0
      have hr := hr0
      rw [parseEntryHistoryWhile] at hr
      rw [parseEntryHistoryWhile]
      rcases readNext_sameBut hS with ⟨s1, s1', a1, a2, a3⟩ | ⟨x, y, R, S, a1, a2, hI, hR, hxy⟩ |
        ⟨hx, hu, a2⟩
      · rw [a1] at hr
        cases hr
        rw [a2]
        exact ⟨_, rfl, rfl, a3⟩
      · rw [a1] at hr
        rw [a2]
        simp only [(inserted_head hI).1] at hr ⊢
        by_cases hname : x.name = "Entry"
        · simp only [hname, if_true] at hr ⊢
          have hopen := open_stack hI hR hxy (recognizedIn_stream _ (by simp [hname]))
          cases hh : parseEntry env n true (st.setPending (x.children :: R)) with
          | none =>
            rw [hh] at hr
            cases hr
          | some w =>
            rw [hh] at hr
            obtain ⟨w2, k1, k2, k3⟩ := ihE true (st.setPending (x.children :: R))
              (st.setPending (y.children :: S)) w ⟨_, hopen, rfl⟩ hh
            rw [k1]
            simp only at hr ⊢
            rw [k2]
            exact ihHW _ _ _ r k3 hr
        · simp only [hname, if_false] at hr ⊢
          exact ihHW _ _ _ r (sameBut_endElement (t := st.setPending (x.children :: R)) rfl hR) hr
      · rw [a2]
        have hn1 : ¬ u.name = "Entry" := stream_ne hu _ (by decide)
        simp only [hn1, if_false]
        have e : skipCurrentElement (st.setPending (u.children :: st.pending)) = st :=
          setPending_self st
        rw [e]
        exact ⟨r, hr0, rfl, sameBut_refl _ _⟩
    · intro st st' r hS hr
      rw [parseEntryHistory] at hr ⊢
      exact ihHW [] st st' r hS hr

/-- An update of a group leaves the cursor alone. -/
theorem updGroup_pending_eq (st : Reader) (p : Nat) (f : DbGroup → DbGroup) :
    (st.updGroup p f).pending = st.pending := by
  unfold Reader.updGroup
  split <;> rfl

/-- The loop of `parseGroup` gives the same result, but for the cursor, in two
states that are the same but for an insertion in the cursor. -/
theorem group_sim (env : Env) (u : XmlElement) (n : Nat) :
    (∀ l st st' r, Reader.SameBut u st st' →
      parseGroupWhile env n l st = some r →
      ∃ r', parseGroupWhile env (n + 1) l st' = some r' ∧ r'.1 = r.1 ∧
        Reader.SameBut u r.2 r'.2) ∧
    (∀ st st' r, Reader.SameBut u st st' →
      parseGroup env n st = some r →
      ∃ r', parseGroup env (n + 1) st' = some r' ∧ r'.1 = r.1 ∧
        Reader.SameBut u r.2 r'.2) := by
  induction n with
  | zero => simp [parseGroupWhile, parseGroup]
  | succ n ih =>
    obtain ⟨ihW, ihG⟩ := ih
    refine ⟨?_, ?_⟩
    · intro l st st' r hS hr0
      have hr := hr0
      rw [parseGroupWhile] at hr
      rw [parseGroupWhile]
      rcases readNext_sameBut hS with ⟨s1, s1', a1, a2, a3⟩ | ⟨x, y, R, S, a1, a2, hI, hR, hxy⟩ |
        ⟨hx, hu, a2⟩
      · rw [a1] at hr
        cases hr
        rw [a2]
        exact ⟨_, rfl, rfl, a3⟩
      · rw [a1] at hr
        rw [a2]
        simp only [(inserted_head hI).1] at hr ⊢
        by_cases hname : x.name = "Group"
        · simp only [hname, if_true] at hr ⊢
          have hopen := open_stack hI hR hxy (recognizedIn_stream _ (by simp [hname]))
          cases hh : parseGroup env n (st.setPending (x.children :: R)) with
          | none =>
            rw [hh] at hr
            cases hr
          | some w =>
            rw [hh] at hr
            obtain ⟨w2, k1, k2, k3⟩ := ihG (st.setPending (x.children :: R))
              (st.setPending (y.children :: S)) w ⟨_, hopen, rfl⟩ hh
            rw [k1]
            simp only at hr ⊢
            rw [k2]
            exact ihW _ _ _ r k3 hr
        · simp only [hname, if_false] at hr ⊢
          by_cases hname2 : x.name = "Entry"
          · simp only [hname2, if_true] at hr ⊢
            have hopen := open_stack hI hR hxy (recognizedIn_stream _ (by simp [hname2]))
            cases hh : parseEntry env n false (st.setPending (x.children :: R)) with
            | none =>
              rw [hh] at hr
              cases hr
            | some w =>
              rw [hh] at hr
              obtain ⟨w2, k1, k2, k3⟩ := (entry_sim env u n).2.1 false
                (st.setPending (x.children :: R)) (st.setPending (y.children :: S)) w
                ⟨_, hopen, rfl⟩ hh
              rw [k1]
              simp only at hr ⊢
              rw [k2]
              exact ihW _ _ _ r k3 hr
          · simp only [hname2, if_false] at hr ⊢
            have e := parseGroupField_ins env l.group (inserted_local hI)
              (st.setPending (x.children :: R)) (y.children :: S)
            rw [setPending_setPending] at e
            rw [e]
            exact ihW _ _ _ r (sameBut_endElement
              ((parseGroupField_pending env l.group x _).trans rfl) hR) hr
      · rw [a2]
        have hn1 : ¬ u.name = "Group" := stream_ne hu _ (by decide)
        have hn2 : ¬ u.name = "Entry" := stream_ne hu _ (by decide)
        simp only [hn1, hn2, if_false]
        rw [parseGroupField_skip env l.group
          (recognizedBy_of_recognizedIn (show u.name ∉ recognizedIn "Group" from hu))]
        have e : (st.setPending (u.children :: st.pending)).endElement = st := setPending_self st
        rw [e]
        exact ⟨r, hr0, rfl, sameBut_refl _ _⟩
    · intro st st' r hS hr
      obtain ⟨q, hq, rfl⟩ := hS
      rw [parseGroup] at hr ⊢
      simp only [newGroup_setPending, updGroup_setPending] at hr ⊢
      cases hw : parseGroupWhile env n ⟨st.newGroup.1, [], []⟩
          (st.newGroup.2.updGroup st.newGroup.1
            (fun g => { g with m_updateTimeinfo := false })) with
      | none =>
        rw [hw] at hr
        cases hr
      | some w =>
        rw [hw] at hr
        cases hr
        obtain ⟨w2, k1, k2, k3⟩ := ihW ⟨st.newGroup.1, [], []⟩
          (st.newGroup.2.updGroup st.newGroup.1 (fun g => { g with m_updateTimeinfo := false }))
          ((st.newGroup.2.updGroup st.newGroup.1
            (fun g => { g with m_updateTimeinfo := false })).setPending q) w
          (sameBut_of (by simp [Reader.newGroup]) hq rfl) hw
        rw [k1]
        obtain ⟨q2, hq2, e2⟩ := k3
        simp only
        rw [k2, e2, parseGroupFinish_setPending]
        refine ⟨_, rfl, rfl, ?_⟩
        exact sameBut_of (parseGroupFinish_pending env w.1 w.2) hq2 rfl

/-- The loop of `parseRoot` gives the same result, but for the cursor, in two
states that are the same but for an insertion in the cursor. -/
theorem root_sim (env : Env) (u : XmlElement) (n : Nat) :
    ∀ l st st' r, Reader.SameBut u st st' →
      parseRootWhile env n l st = some r →
      ∃ r', parseRootWhile env (n + 1) l st' = some r' ∧ r'.1 = r.1 ∧
        Reader.SameBut u r.2 r'.2 := by
  induction n with
  | zero => simp [parseRootWhile]
  | succ n ih =>
    intro l st st' r hS hr0
    have hr := hr0
    rw [parseRootWhile] at hr
    rw [parseRootWhile]
    rcases readNext_sameBut hS with ⟨s1, s1', a1, a2, a3⟩ | ⟨x, y, R, S, a1, a2, hI, hR, hxy⟩ |
      ⟨hx, hu, a2⟩
    · rw [a1] at hr
      cases hr
      rw [a2]
      exact ⟨_, rfl, rfl, a3⟩
    · rw [a1] at hr
      rw [a2]
      simp only [(inserted_head hI).1] at hr ⊢
      by_cases hname : x.name = "Group"
      · simp only [hname, if_true] at hr ⊢
        have hopen := open_stack hI hR hxy (recognizedIn_stream _ (by simp [hname]))
        cases hf : l.groupElementFound with
        | true =>
          simp only [hf, if_true] at hr ⊢
          exact ih _ ((st.setPending (x.children :: R)).raiseError _)
            ((st.setPending (y.children :: S)).raiseError _) r ⟨_, hopen, rfl⟩ hr
        | false =>
          simp only [hf, Bool.false_eq_true, if_false] at hr ⊢
          cases hh : parseGroup env n (st.setPending (x.children :: R)) with
          | none =>
            rw [hh] at hr
            cases hr
          | some w =>
            rw [hh] at hr
            obtain ⟨w2, k1, k2, k3⟩ := (group_sim env u n).2 (st.setPending (x.children :: R))
              (st.setPending (y.children :: S)) w ⟨_, hopen, rfl⟩ hh
            rw [k1]
            simp only at hr ⊢
            obtain ⟨q2, hq2, e2⟩ := k3
            rw [k2, e2]
            simp only [setPending_rootGroup, setRootGroup_setPending, deleteGroup_setPending]
            refine ih _ _ _ r (sameBut_of ?_ hq2 rfl) hr
            simp only [Reader.deleteGroup, Reader.setRootGroup, Reader.cleanupParent,
              updGroup_pending_eq, Reader.setRootPtr]
            cases (w.2.group w.1).m_parent <;> simp only [updGroup_pending_eq]
      · simp only [hname, if_false] at hr ⊢
        by_cases hname2 : x.name = "DeletedObjects"
        · simp only [hname2, if_true] at hr ⊢
          have e := parseDeletedObjects_ins env (inserted_local hI) hname2
            (st.setPending (x.children :: R)) (y.children :: S)
          rw [setPending_setPending] at e
          rw [e]
          exact ih _ _ _ r (sameBut_endElement
            ((parseDeletedObjects_pending env x _).trans rfl) hR) hr
        · simp only [hname2, if_false] at hr ⊢
          exact ih _ _ _ r (sameBut_endElement (t := st.setPending (x.children :: R)) rfl hR) hr
    · rw [a2]
      have hn1 : ¬ u.name = "Group" := stream_ne hu _ (by decide)
      have hn2 : ¬ u.name = "DeletedObjects" := stream_ne hu _ (by decide)
      simp only [hn1, hn2, if_false]
      have e : skipCurrentElement (st.setPending (u.children :: st.pending)) = st :=
        setPending_self st
      rw [e]
      exact ⟨r, hr0, rfl, sameBut_refl _ _⟩

/-- More fuel does not change a result of the entry functions. -/
theorem entry_fuel_succ (env : Env) (n : Nat) :
    (∀ history l st r, parseEntryWhile env n history l st = some r →
      parseEntryWhile env (n + 1) history l st = some r) ∧
    (∀ history st r, parseEntry env n history st = some r →
      parseEntry env (n + 1) history st = some r) ∧
    (∀ items st r, parseEntryHistoryWhile env n items st = some r →
      parseEntryHistoryWhile env (n + 1) items st = some r) ∧
    (∀ st r, parseEntryHistory env n st = some r →
      parseEntryHistory env (n + 1) st = some r) := by
  induction n with
  | zero => simp [parseEntryWhile, parseEntry, parseEntryHistoryWhile, parseEntryHistory]
  | succ n ih =>
    obtain ⟨ihW, ihE, ihHW, ihH⟩ := ih
    refine ⟨?_, ?_, ?_, ?_⟩
    · intro history l st r h
      rw [parseEntryWhile] at h ⊢
      rcases hrd : readNextStartElement st with ⟨_ | x, st1⟩
      · simpa [hrd] using h
      · simp only [hrd] at h ⊢
        split_ifs at h ⊢ with h1 h2
        · exact ihW _ _ _ _ h
        · cases hh : parseEntryHistory env n st1 with
          | none => simp [hh] at h
          | some w =>
            rw [hh] at h
            rw [ihH _ _ hh]
            exact ihW _ _ _ _ h
        · exact ihW _ _ _ _ h
    · intro history st r h
      rw [parseEntry] at h ⊢
      simp only at h ⊢
      cases hh : parseEntryWhile env n history ⟨st.newEntry.1, [], []⟩
          (st.newEntry.2.updEntry st.newEntry.1
            (fun e => { e with m_updateTimeinfo := false })) with
      | none => simp [hh] at h
      | some w =>
        rw [hh] at h
        rw [ihW _ _ _ _ hh]
        exact h
    · intro items st r h
      rw [parseEntryHistoryWhile] at h ⊢
      rcases hrd : readNextStartElement st with ⟨_ | x, st1⟩
      · simpa [hrd] using h
      · simp only [hrd] at h ⊢
        split_ifs at h ⊢ with h1
        · cases hh : parseEntry env n true st1 with
          | none => simp [hh] at h
          | some w =>
            rw [hh] at h
            rw [ihE _ _ _ hh]
            exact ihHW _ _ _ h
        · exact ihHW _ _ _ h
    · intro st r h
      rw [parseEntryHistory] at h ⊢
      exact ihHW _ _ _ h

/-- More fuel does not change a result of the group functions. -/
theorem group_fuel_succ (env : Env) (n : Nat) :
    (∀ l st r, parseGroupWhile env n l st = some r →
      parseGroupWhile env (n + 1) l st = some r) ∧
    (∀ st r, parseGroup env n st = some r → parseGroup env (n + 1) st = some r) := by
  induction n with
  | zero => simp [parseGroupWhile, parseGroup]
  | succ n ih =>
    obtain ⟨ihW, ihG⟩ := ih
    refine ⟨?_, ?_⟩
    · intro l st r h
      rw [parseGroupWhile] at h ⊢
      rcases hrd : readNextStartElement st with ⟨_ | x, st1⟩
      · simpa [hrd] using h
      · simp only [hrd] at h ⊢
        split_ifs at h ⊢ with h1 h2
        · cases hh : parseGroup env n st1 with
          | none => simp [hh] at h
          | some w =>
            rw [hh] at h
            rw [ihG _ _ hh]
            exact ihW _ _ _ h
        · cases hh : parseEntry env n false st1 with
          | none => simp [hh] at h
          | some w =>
            rw [hh] at h
            rw [(entry_fuel_succ env n).2.1 _ _ _ hh]
            exact ihW _ _ _ h
        · exact ihW _ _ _ h
    · intro st r h
      rw [parseGroup] at h ⊢
      simp only at h ⊢
      cases hh : parseGroupWhile env n ⟨st.newGroup.1, [], []⟩
          (st.newGroup.2.updGroup st.newGroup.1
            (fun g => { g with m_updateTimeinfo := false })) with
      | none => simp [hh] at h
      | some w =>
        rw [hh] at h
        rw [ihW _ _ _ hh]
        exact h

/-- More fuel does not change a result of the loop of `parseRoot`. -/
theorem parseRootWhile_fuel_succ (env : Env) (n : Nat) :
    ∀ l st r, parseRootWhile env n l st = some r →
      parseRootWhile env (n + 1) l st = some r := by
  induction n with
  | zero => simp [parseRootWhile]
  | succ n ih =>
    intro l st r h
    rw [parseRootWhile] at h ⊢
    rcases hrd : readNextStartElement st with ⟨_ | x, st1⟩
    · simpa [hrd] using h
    · simp only [hrd] at h ⊢
      split_ifs at h ⊢ with h1 h2 h3
      · exact ih _ _ _ h
      · cases hh : parseGroup env n st1 with
        | none => simp [hh] at h
        | some w =>
          rw [hh] at h
          rw [(group_fuel_succ env n).2 _ _ hh]
          exact ih _ _ _ h
      · exact ih _ _ _ h
      · exact ih _ _ _ h

/-- More fuel does not change a result of `parseRoot`. -/
theorem parseRoot_fuel_succ (env : Env) (n : Nat) (st : Reader) (r : Bool × Reader)
    (h : parseRoot env n st = some r) : parseRoot env (n + 1) st = some r := by
  cases n with
  | zero => simp [parseRoot] at h
  | succ n =>
    rw [parseRoot] at h ⊢
    cases hh : parseRootWhile env n ⟨false, false⟩ st with
    | none => simp [hh] at h
    | some w =>
      rw [hh] at h
      rw [parseRootWhile_fuel_succ env n _ _ _ hh]
      exact h

/-- More fuel does not change a result of the loop of `parseKeePassFile`. -/
theorem parseKeePassFileWhile_fuel_succ (env : Env) (n : Nat) :
    ∀ l st r, parseKeePassFileWhile env n l st = some r →
      parseKeePassFileWhile env (n + 1) l st = some r := by
  induction n with
  | zero => simp [parseKeePassFileWhile]
  | succ n ih =>
    intro l st r h
    rw [parseKeePassFileWhile] at h ⊢
    rcases hrd : readNextStartElement st with ⟨_ | x, st1⟩
    · simpa [hrd] using h
    · simp only [hrd] at h ⊢
      split_ifs at h ⊢ with h1 h2 h3
      · exact ih _ _ _ h
      · exact ih _ _ _ h
      · cases hh : parseRoot env n st1 with
        | none => simp [hh] at h
        | some w =>
          rw [hh] at h
          rw [parseRoot_fuel_succ env n _ _ hh]
          exact ih _ _ _ h
      · exact ih _ _ _ h

/-- More fuel does not change a result of `parseKeePassFile`. -/
theorem parseKeePassFile_fuel_le (env : Env) (n m : Nat) (st : Reader) (r : Bool × Reader)
    (h : parseKeePassFile env n st = some r) (hm : n ≤ m) :
    parseKeePassFile env m st = some r := by
  induction m with
  | zero =>
    have : n = 0 := by omega
    subst this
    exact h
  | succ m ih =>
    by_cases hn : n = m + 1
    · subst hn
      exact h
    · have h1 := ih (by omega)
      cases m with
      | zero => simp [parseKeePassFile] at h1
      | succ m =>
        rw [parseKeePassFile] at h1 ⊢
        cases hh : parseKeePassFileWhile env m ⟨false, false⟩ st with
        | none => simp [hh] at h1
        | some w =>
          rw [hh] at h1
          rw [parseKeePassFileWhile_fuel_succ env m _ _ _ hh]
          exact h1

/-- The function `parseRoot` gives the same result, but for the cursor, in two
states that are the same but for an insertion in the cursor. -/
theorem parseRoot_sim (env : Env) (u : XmlElement) (n : Nat) (st st' : Reader)
    (r : Bool × Reader) (hS : Reader.SameBut u st st') (h : parseRoot env n st = some r) :
    ∃ r', parseRoot env (n + 1) st' = some r' ∧ r'.1 = r.1 ∧ Reader.SameBut u r.2 r'.2 := by
  cases n with
  | zero => simp [parseRoot] at h
  | succ n =>
    rw [parseRoot] at h ⊢
    cases hw : parseRootWhile env n ⟨false, false⟩ st with
    | none => simp [hw] at h
    | some v =>
      rw [hw] at h
      cases h
      obtain ⟨v2, k1, k2, k3⟩ := root_sim env u n ⟨false, false⟩ st st' v hS hw
      rw [k1]
      exact ⟨_, rfl, by simp only [k2], k3⟩

/-- The loop of `parseKeePassFile` gives the same result, but for the cursor, in
two states that are the same but for an insertion in the cursor. -/
theorem file_sim (env : Env) (u : XmlElement) (n : Nat) :
    ∀ l st st' r, Reader.SameBut u st st' →
      parseKeePassFileWhile env n l st = some r →
      ∃ r', parseKeePassFileWhile env (n + 1) l st' = some r' ∧ r'.1 = r.1 ∧
        Reader.SameBut u r.2 r'.2 := by
  induction n with
  | zero => simp [parseKeePassFileWhile]
  | succ n ih =>
    intro l st st' r hS hr0
    have hr := hr0
    rw [parseKeePassFileWhile] at hr
    rw [parseKeePassFileWhile]
    rcases readNext_sameBut hS with ⟨s1, s1', a1, a2, a3⟩ | ⟨x, y, R, S, a1, a2, hI, hR, hxy⟩ |
      ⟨hx, hu, a2⟩
    · rw [a1] at hr
      cases hr
      rw [a2]
      exact ⟨_, rfl, rfl, a3⟩
    · rw [a1] at hr
      rw [a2]
      simp only [(inserted_head hI).1] at hr ⊢
      by_cases hname : x.name = "Meta"
      · simp only [hname, if_true] at hr ⊢
        have e := parseMeta_ins env (inserted_local hI) hname
          (st.setPending (x.children :: R)) (y.children :: S)
        rw [setPending_setPending] at e
        rw [e]
        exact ih _ _ _ r (sameBut_endElement
          ((parseMeta_pending env x _).trans rfl) hR) hr
      · simp only [hname, if_false] at hr ⊢
        by_cases hname2 : x.name = "Root"
        · simp only [hname2, if_true] at hr ⊢
          have hopen := open_stack hI hR hxy (recognizedIn_stream _ (by simp [hname2]))
          cases hf : l.rootElementFound with
          | true =>
            simp only [hf, if_true] at hr ⊢
            exact ih _ (st.setPending (x.children :: R))
              (st.setPending (y.children :: S)) r ⟨_, hopen, rfl⟩ hr
          | false =>
            simp only [hf, Bool.false_eq_true, if_false] at hr ⊢
            cases hh : parseRoot env n (st.setPending (x.children :: R)) with
            | none =>
              rw [hh] at hr
              cases hr
            | some w =>
              rw [hh] at hr
              obtain ⟨w2, k1, k2, k3⟩ := parseRoot_sim env u n
                (st.setPending (x.children :: R)) (st.setPending (y.children :: S)) w
                ⟨_, hopen, rfl⟩ hh
              rw [k1]
              simp only at hr ⊢
              rw [k2]
              exact ih _ _ _ r k3 hr
        · simp only [hname2, if_false] at hr ⊢
          exact ih _ _ _ r (sameBut_endElement (t := st.setPending (x.children :: R)) rfl hR) hr
    · rw [a2]
      have hn1 : ¬ u.name = "Meta" := stream_ne hu _ (by decide)
      have hn2 : ¬ u.name = "Root" := stream_ne hu _ (by decide)
      simp only [hn1, hn2, if_false]
      have e : skipCurrentElement (st.setPending (u.children :: st.pending)) = st :=
        setPending_self st
      rw [e]
      exact ⟨r, hr0, rfl, sameBut_refl _ _⟩

/-- The function `parseKeePassFile` gives the same result, but for the cursor, in
two states that are the same but for an insertion in the cursor. -/
theorem parseKeePassFile_sim (env : Env) (u : XmlElement) (n : Nat) (st st' : Reader)
    (r : Bool × Reader) (hS : Reader.SameBut u st st')
    (h : parseKeePassFile env n st = some r) :
    ∃ r', parseKeePassFile env (n + 1) st' = some r' ∧ r'.1 = r.1 ∧
      Reader.SameBut u r.2 r'.2 := by
  cases n with
  | zero => simp [parseKeePassFile] at h
  | succ n =>
    rw [parseKeePassFile] at h ⊢
    cases hw : parseKeePassFileWhile env n ⟨false, false⟩ st with
    | none => simp [hw] at h
    | some v =>
      rw [hw] at h
      cases h
      obtain ⟨v2, k1, k2, k3⟩ := file_sim env u n ⟨false, false⟩ st st' v hS hw
      rw [k1]
      exact ⟨_, rfl, by simp only [k2], k3⟩

/-- More fuel does not change a result of `readDatabase`. -/
theorem readDatabaseFuel_fuel_le (env : Env) (n m : Nat) (strictMode : Bool)
    (binaryPool : List (String × QByteArray)) (randomStream : Option QByteArray)
    (doc : XmlElement) (r : Reader)
    (h : readDatabaseFuel env n strictMode binaryPool randomStream doc = some r) (hm : n ≤ m) :
    readDatabaseFuel env m strictMode binaryPool randomStream doc = some r := by
  unfold readDatabaseFuel at h ⊢
  rcases hrd : readNextStartElement (Reader.start strictMode binaryPool randomStream doc)
    with ⟨_ | x, st1⟩
  · simpa [hrd] using h
  · simp only [hrd] at h ⊢
    split_ifs at h ⊢ with h1
    · cases hh : parseKeePassFile env n st1 with
      | none => simp [hh] at h
      | some w =>
        rw [hh] at h
        rw [parseKeePassFile_fuel_le env n m st1 w hh hm]
        exact h
    · exact h

/-- The decode of a document with an inserted element, on one more unit of
fuel, is the decode of the document but for the cursor. -/
theorem readDatabaseFuel_ins (env : Env) (fuel : Nat) (strictMode : Bool)
    (binaryPool : List (String × QByteArray)) (randomStream : Option QByteArray)
    {u doc doc' : XmlElement} (hI : Inserted recognizedIn u false doc doc') (r : Reader)
    (h : readDatabaseFuel env fuel strictMode binaryPool randomStream doc = some r) :
    ∃ q, readDatabaseFuel env (fuel + 1) strictMode binaryPool randomStream doc'
      = some (r.setPending q) := by
  unfold readDatabaseFuel at h ⊢
  have hx0 : (Reader.start strictMode binaryPool randomStream doc).xmlError = false := rfl
  have hp0 : (Reader.start strictMode binaryPool randomStream doc).pending
      = (doc :: []) :: [] := rfl
  have hs : Reader.start strictMode binaryPool randomStream doc'
      = (Reader.start strictMode binaryPool randomStream doc).setPending ((doc' :: []) :: []) :=
    rfl
  rw [hs]
  generalize Reader.start strictMode binaryPool randomStream doc = s0 at h hx0 hp0 ⊢
  have hx1 : (s0.setPending ((doc' :: []) :: [])).xmlError = false := hx0
  have hp1 : (s0.setPending ((doc' :: []) :: [])).pending = (doc' :: []) :: [] := rfl
  rw [readNextStartElement_cons hx0 hp0] at h
  replace h : (if doc.name = "KeePassFile" then
      (match parseKeePassFile env fuel (s0.setPending (doc.children :: [] :: [])) with
        | none => none
        | some (rootGroupParsed, st2) => some (readDatabaseFinish env rootGroupParsed st2))
      else some (readDatabaseFinish env false (s0.setPending (doc.children :: [] :: []))))
      = some r := h
  rw [readNextStartElement_cons hx1 hp1, setPending_setPending]
  simp only [(inserted_head hI).1]
  by_cases hname : doc.name = "KeePassFile"
  · rw [if_pos hname] at h
    simp only [hname, if_true]
    cases hh : parseKeePassFile env fuel (s0.setPending (doc.children :: [] :: [])) with
    | none =>
      rw [hh] at h
      cases h
    | some w =>
      rw [hh] at h
      simp only [Option.some.injEq] at h
      have hopen : InsertedStack u (doc.children :: [] :: []) (doc'.children :: [] :: []) :=
        open_stack hI (InsertedStack.refl _) (Or.inr rfl)
          (recognizedIn_stream _ (by simp [hname]))
      obtain ⟨w2, k1, k2, q, -, e⟩ := parseKeePassFile_sim env u fuel
        (s0.setPending (doc.children :: [] :: [])) (s0.setPending (doc'.children :: [] :: [])) w
        ⟨_, hopen, rfl⟩ hh
      rw [k1]
      simp only
      rw [k2, e, readDatabaseFinish_setPending, h]
      exact ⟨q, rfl⟩
  · rw [if_neg hname] at h
    simp only [hname, if_false]
    simp only [Option.some.injEq] at h
    refine ⟨doc'.children :: [] :: [], ?_⟩
    have e := readDatabaseFinish_setPending env false
      (s0.setPending (doc.children :: [] :: [])) (doc'.children :: [] :: [])
    rw [setPending_setPending] at e
    rw [e, h]

/-- An element with a name that its container does not know changes the decode
in nothing but the cursor. -/
theorem readDatabase_ins (env : Env) (strictMode : Bool)
    (binaryPool : List (String × QByteArray)) (randomStream : Option QByteArray)
    {u doc doc' : XmlElement} (hI : Inserted recognizedIn u false doc doc') :
    ∃ r q, readDatabase env strictMode binaryPool randomStream doc = some r ∧
      readDatabase env strictMode binaryPool randomStream doc' = some (r.setPending q) := by
  obtain ⟨r, hr⟩ := readDatabase_total env strictMode binaryPool randomStream doc
  obtain ⟨r', hr'⟩ := readDatabase_total env strictMode binaryPool randomStream doc'
  unfold readDatabase at hr hr'
  obtain ⟨q, hq⟩ := readDatabaseFuel_ins env _ strictMode binaryPool randomStream hI r hr
  have e1 := readDatabaseFuel_fuel_le env _ (max (4 * doc.size + 2 + 1) (4 * doc'.size + 2))
    _ _ _ _ _ hq (Nat.le_max_left _ _)
  have e2 := readDatabaseFuel_fuel_le env _ (max (4 * doc.size + 2 + 1) (4 * doc'.size + 2))
    _ _ _ _ _ hr' (Nat.le_max_right _ _)
  rw [e1] at e2
  simp only [Option.some.injEq] at e2
  refine ⟨r, q, hr, ?_⟩
  unfold readDatabase
  rw [hr', e2]

/-! ### An element read without error and the cursor behind it -/

theorem endElement_setPending_cons (t : Reader) (c : List XmlElement)
    (q : List (List XmlElement)) :
    (t.setPending (c :: q)).endElement = t.endElement.setPending q := rfl

theorem skipCurrentElement_setPending_cons (t : Reader) (c : List XmlElement)
    (q : List (List XmlElement)) :
    skipCurrentElement (t.setPending (c :: q)) = t.setPending q := rfl

/-- An `Entry` element read without error is read in the same way whatever
the cursor holds behind its end. -/
theorem entry_below (env : Env) (n : Nat) :
    (∀ history l st r cs up up', st.pending = cs :: up →
      parseEntryWhile env n history l st = some r → r.2.hasError = false →
      parseEntryWhile env n history l (st.setPending (cs :: up'))
        = some (r.1, r.2.setPending up')) ∧
    (∀ history st r cs up up', st.pending = cs :: up →
      parseEntry env n history st = some r → r.2.hasError = false →
      parseEntry env n history (st.setPending (cs :: up'))
        = some (r.1, r.2.setPending up')) ∧
    (∀ items st r cs up up', st.pending = cs :: up →
      parseEntryHistoryWhile env n items st = some r → r.2.hasError = false →
      parseEntryHistoryWhile env n items (st.setPending (cs :: up'))
        = some (r.1, r.2.setPending up')) ∧
    (∀ st r cs up up', st.pending = cs :: up →
      parseEntryHistory env n st = some r → r.2.hasError = false →
      parseEntryHistory env n (st.setPending (cs :: up'))
        = some (r.1, r.2.setPending up')) := by
  induction n with
  | zero => simp [parseEntryWhile, parseEntry, parseEntryHistoryWhile, parseEntryHistory]
  | succ n ih =>
    obtain ⟨ihW, ihE, ihHW, ihH⟩ := ih
    have st_aux := parseEntry_stable_aux stable_hasError env n
    refine ⟨?_, ?_, ?_, ?_⟩
    · intro history l st r cs up up' hp hr he
      have hst : st.hasError = false :=
        hasError_false_of_stable
          (fun h => (parseEntry_stable_aux stable_hasError env (n + 1)).1 history l st r h hr) he
      have hx := xmlError_false_of_hasError hst
      rw [parseEntryWhile] at hr ⊢
      rcases readNext_cases hp hx with ⟨hcs, h1⟩ | ⟨x, rest, hcs, h1⟩
      · subst hcs
        rw [h1] at hr
        cases hr
        rw [@readNextStartElement_nil (st.setPending ([] :: up')) _ hx rfl]
        rfl
      · subst hcs
        rw [h1] at hr
        rw [@readNextStartElement_cons (st.setPending ((x :: rest) :: up')) _ _ _ hx rfl,
          setPending_setPending]
        simp only at hr ⊢
        by_cases hname : x.name = "History"
        · simp only [hname, if_true] at hr ⊢
          cases history with
          | true =>
            exfalso
            simp only [if_true] at hr
            have := st_aux.1 _ _ _ r (hasError_raiseError _ _) hr
            rw [he] at this
            cases this
          | false =>
            simp only [Bool.false_eq_true, if_false] at hr ⊢
            cases hh : parseEntryHistory env n (st.setPending (x.children :: rest :: up)) with
            | none =>
              rw [hh] at hr
              cases hr
            | some w =>
              rw [hh] at hr
              simp only at hr
              have he2 : w.2.hasError = false :=
                hasError_false_of_stable (fun h => st_aux.1 _ _ _ r h hr) he
              have k := ihH _ w x.children (rest :: up) (rest :: up') rfl hh he2
              rw [setPending_setPending] at k
              rw [k]
              simp only
              have hp2 := (entry_sync env n).2.2.2 _ w x.children (rest :: up) rfl hh he2
              exact ihW _ _ _ r rest up up' hp2 hr he
        · simp only [hname, if_false] at hr ⊢
          have e := parseEntryField_ins env l.entry (u := x) (Inserted.refl false x) l.binaryRefs
            (st.setPending (x.children :: rest :: up)) (x.children :: rest :: up')
          rw [setPending_setPending] at e
          rw [e]
          simp only [endElement_setPending_cons]
          refine ihW _ _ _ r rest up up' ?_ hr he
          exact endElement_pending (c := x.children)
            ((parseEntryField_pending env l.entry x _).trans rfl)
    · intro history st r cs up up' hp hr he
      rw [parseEntry] at hr ⊢
      simp only [newEntry_setPending, updEntry_setPending] at hr ⊢
      cases hw : parseEntryWhile env n history ⟨st.newEntry.1, [], []⟩
          (st.newEntry.2.updEntry st.newEntry.1
            (fun e => { e with m_updateTimeinfo := false })) with
      | none =>
        rw [hw] at hr
        cases hr
      | some w =>
        rw [hw] at hr
        cases hr
        have he3 : w.2.hasError = false :=
          hasError_false_of_stable
            (fun h => parseEntryFinish_stable stable_hasError h) he
        have k := ihW history _ _ w cs up up' (by simpa [Reader.newEntry] using hp) hw he3
        rw [k]
        simp only
        rw [parseEntryFinish_setPending]
    · intro items st r cs up up' hp hr he
      have hst : st.hasError = false :=
        hasError_false_of_stable
          (fun h => (parseEntry_stable_aux stable_hasError env (n + 1)).2.2.1 items st r h hr) he
      have hx := xmlError_false_of_hasError hst
      rw [parseEntryHistoryWhile] at hr ⊢
      rcases readNext_cases hp hx with ⟨hcs, h1⟩ | ⟨x, rest, hcs, h1⟩
      · subst hcs
        rw [h1] at hr
        cases hr
        rw [@readNextStartElement_nil (st.setPending ([] :: up')) _ hx rfl]
        rfl
      · subst hcs
        rw [h1] at hr
        rw [@readNextStartElement_cons (st.setPending ((x :: rest) :: up')) _ _ _ hx rfl,
          setPending_setPending]
        simp only at hr ⊢
        by_cases hname : x.name = "Entry"
        · simp only [hname, if_true] at hr ⊢
          cases hh : parseEntry env n true (st.setPending (x.children :: rest :: up)) with
          | none =>
            rw [hh] at hr
            cases hr
          | some w =>
            rw [hh] at hr
            simp only at hr
            have he2 : w.2.hasError = false :=
              hasError_false_of_stable (fun h => st_aux.2.2.1 _ _ r h hr) he
            have k := ihE true _ w x.children (rest :: up) (rest :: up') rfl hh he2
            rw [setPending_setPending] at k
            rw [k]
            simp only
            have hp2 := (entry_sync env n).2.1 true _ w x.children (rest :: up) rfl hh he2
            exact ihHW _ _ r rest up up' hp2 hr he
        · simp only [hname, if_false] at hr ⊢
          rw [skipCurrentElement_setPending_cons] at hr ⊢
          have k := ihHW items (st.setPending (rest :: up)) r rest up up' rfl hr he
          rw [setPending_setPending] at k
          exact k
    · intro st r cs up up' hp hr he
      rw [parseEntryHistory] at hr ⊢
      exact ihHW [] st r cs up up' hp hr he

/-- A `Group` element read without error is read in the same way whatever the
cursor holds behind its end. -/
theorem group_below (env : Env) (n : Nat) :
    (∀ l st r cs up up', st.pending = cs :: up →
      parseGroupWhile env n l st = some r → r.2.hasError = false →
      parseGroupWhile env n l (st.setPending (cs :: up')) = some (r.1, r.2.setPending up')) ∧
    (∀ st r cs up up', st.pending = cs :: up →
      parseGroup env n st = some r → r.2.hasError = false →
      parseGroup env n (st.setPending (cs :: up')) = some (r.1, r.2.setPending up')) := by
  induction n with
  | zero => simp [parseGroupWhile, parseGroup]
  | succ n ih =>
    obtain ⟨ihW, ihG⟩ := ih
    have st_aux := parseGroup_stable_aux stable_hasError env n
    refine ⟨?_, ?_⟩
    · intro l st r cs up up' hp hr he
      have hst : st.hasError = false :=
        hasError_false_of_stable
          (fun h => (parseGroup_stable_aux stable_hasError env (n + 1)).1 l st r h hr) he
      have hx := xmlError_false_of_hasError hst
      rw [parseGroupWhile] at hr ⊢
      rcases readNext_cases hp hx with ⟨hcs, h1⟩ | ⟨x, rest, hcs, h1⟩
      · subst hcs
        rw [h1] at hr
        cases hr
        rw [@readNextStartElement_nil (st.setPending ([] :: up')) _ hx rfl]
        rfl
      · subst hcs
        rw [h1] at hr
        rw [@readNextStartElement_cons (st.setPending ((x :: rest) :: up')) _ _ _ hx rfl,
          setPending_setPending]
        simp only at hr ⊢
        by_cases hname : x.name = "Group"
        · simp only [hname, if_true] at hr ⊢
          cases hh : parseGroup env n (st.setPending (x.children :: rest :: up)) with
          | none =>
            rw [hh] at hr
            cases hr
          | some w =>
            rw [hh] at hr
            simp only at hr
            have he2 : w.2.hasError = false :=
              hasError_false_of_stable (fun h => st_aux.1 _ _ r h hr) he
            have k := ihG _ w x.children (rest :: up) (rest :: up') rfl hh he2
            rw [setPending_setPending] at k
            rw [k]
            simp only
            have hp2 := (group_sync env n).2 _ w x.children (rest :: up) rfl hh he2
            exact ihW _ _ r rest up up' hp2 hr he
        · simp only [hname, if_false] at hr ⊢
          by_cases hname2 : x.name = "Entry"
          · simp only [hname2, if_true] at hr ⊢
            cases hh : parseEntry env n false (st.setPending (x.children :: rest :: up)) with
            | none =>
              rw [hh] at hr
              cases hr
            | some w =>
              rw [hh] at hr
              simp only at hr
              have he2 : w.2.hasError = false :=
                hasError_false_of_stable (fun h => st_aux.1 _ _ r h hr) he
              have k := (entry_below env n).2.1 false _ w x.children (rest :: up) (rest :: up')
                rfl hh he2
              rw [setPending_setPending] at k
              rw [k]
              simp only
              have hp2 := (entry_sync env n).2.1 false _ w x.children (rest :: up) rfl hh he2
              exact ihW _ _ r rest up up' hp2 hr he
          · simp only [hname2, if_false] at hr ⊢
            have e := parseGroupField_ins env l.group (u := x) (Inserted.refl false x)
              (st.setPending (x.children :: rest :: up)) (x.children :: rest :: up')
            rw [setPending_setPending] at e
            rw [e]
            simp only [endElement_setPending_cons]
            refine ihW _ _ r rest up up' ?_ hr he
            exact endElement_pending (c := x.children)
              ((parseGroupField_pending env l.group x _).trans rfl)
    · intro st r cs up up' hp hr he
      rw [parseGroup] at hr ⊢
      simp only [newGroup_setPending, updGroup_setPending] at hr ⊢
      cases hw : parseGroupWhile env n ⟨st.newGroup.1, [], []⟩
          (st.newGroup.2.updGroup st.newGroup.1
            (fun g => { g with m_updateTimeinfo := false })) with
      | none =>
        rw [hw] at hr
        cases hr
      | some w =>
        rw [hw] at hr
        cases hr
        have he3 : w.2.hasError = false :=
          hasError_false_of_stable
            (fun h => parseGroupFinish_stable stable_hasError h) he
        have k := ihW _ _ w cs up up' (by simpa [Reader.newGroup] using hp) hw he3
        rw [k]
        simp only
        rw [parseGroupFinish_setPending]

/-- The cursor after the new root group took the place of the old one. -/
theorem rootSwap_pending (t : Reader) (g : Nat) :
    ((t.setRootGroup g).deleteGroup t.rootGroup).pending = t.pending := by
  simp only [Reader.deleteGroup, Reader.setRootGroup, Reader.cleanupParent,
    updGroup_pending_eq, Reader.setRootPtr]
  cases (t.group g).m_parent <;> simp only [updGroup_pending_eq]

/-- The new root group takes the place of the old one in the same way whatever
the cursor. -/
theorem rootSwap_setPending (t : Reader) (g : Nat) (q : List (List XmlElement)) :
    ((t.setPending q).setRootGroup g).deleteGroup (t.setPending q).rootGroup
      = ((t.setRootGroup g).deleteGroup t.rootGroup).setPending q := by
  simp only [setPending_rootGroup, setRootGroup_setPending, deleteGroup_setPending]

/-- A `Root` element read without error is read in the same way whatever the
cursor holds behind its end. -/
theorem parseRootWhile_below (env : Env) (n : Nat) :
    ∀ l st r cs up up', st.pending = cs :: up →
      parseRootWhile env n l st = some r → r.2.hasError = false →
      parseRootWhile env n l (st.setPending (cs :: up')) = some (r.1, r.2.setPending up') := by
  induction n with
  | zero => simp [parseRootWhile]
  | succ n ih =>
    intro l st r cs up up' hp hr he
    have st_aux := parseRootWhile_stable stable_hasError env n
    have hst : st.hasError = false :=
      hasError_false_of_stable
        (fun h => parseRootWhile_stable stable_hasError env (n + 1) l st r h hr) he
    have hx := xmlError_false_of_hasError hst
    rw [parseRootWhile] at hr ⊢
    rcases readNext_cases hp hx with ⟨hcs, h1⟩ | ⟨x, rest, hcs, h1⟩
    · subst hcs
      rw [h1] at hr
      cases hr
      rw [@readNextStartElement_nil (st.setPending ([] :: up')) _ hx rfl]
      rfl
    · subst hcs
      rw [h1] at hr
      rw [@readNextStartElement_cons (st.setPending ((x :: rest) :: up')) _ _ _ hx rfl,
        setPending_setPending]
      simp only at hr ⊢
      by_cases hname : x.name = "Group"
      · simp only [hname, if_true] at hr ⊢
        cases hf : l.groupElementFound with
        | true =>
          exfalso
          simp only [hf, if_true] at hr
          have := st_aux _ _ r (hasError_raiseError _ _) hr
          rw [he] at this
          cases this
        | false =>
          simp only [hf, Bool.false_eq_true, if_false] at hr ⊢
          cases hh : parseGroup env n (st.setPending (x.children :: rest :: up)) with
          | none =>
            rw [hh] at hr
            cases hr
          | some w =>
            rw [hh] at hr
            simp only at hr
            have he4 : ((w.2.setRootGroup w.1).deleteGroup w.2.rootGroup).hasError = false :=
              hasError_false_of_stable (fun h => st_aux _ _ r h hr) he
            have he2 : w.2.hasError = false := by
              simpa [Reader.hasError, Reader.deleteGroup, Reader.setRootGroup] using he4
            have k := (group_below env n).2 _ w x.children (rest :: up) (rest :: up') rfl hh he2
            rw [setPending_setPending] at k
            rw [k]
            simp only
            have hp2 := (group_sync env n).2 _ w x.children (rest :: up) rfl hh he2
            rw [rootSwap_setPending]
            exact ih _ _ r rest up up' ((rootSwap_pending w.2 w.1).trans hp2) hr he
      · simp only [hname, if_false] at hr ⊢
        by_cases hname2 : x.name = "DeletedObjects"
        · simp only [hname2, if_true] at hr ⊢
          have e := parseDeletedObjects_ins env (u := x) (Inserted.refl false x) hname2
            (st.setPending (x.children :: rest :: up)) (x.children :: rest :: up')
          rw [setPending_setPending] at e
          rw [e]
          simp only [endElement_setPending_cons]
          refine ih _ _ r rest up up' ?_ hr he
          exact endElement_pending (c := x.children)
            ((parseDeletedObjects_pending env x _).trans rfl)
        · simp only [hname2, if_false] at hr ⊢
          rw [skipCurrentElement_setPending_cons] at hr ⊢
          have k := ih l (st.setPending (rest :: up)) r rest up up' rfl hr he
          rw [setPending_setPending] at k
          exact k

/-- The function `parseRoot` on a `Root` element read without error gives the
same whatever the cursor holds behind its end. -/
theorem parseRoot_below (env : Env) (n : Nat) (st : Reader) (r : Bool × Reader)
    (cs : List XmlElement) (up up' : List (List XmlElement)) (hp : st.pending = cs :: up)
    (hr : parseRoot env n st = some r) (he : r.2.hasError = false) :
    parseRoot env n (st.setPending (cs :: up')) = some (r.1, r.2.setPending up') := by
  cases n with
  | zero => simp [parseRoot] at hr
  | succ n =>
    rw [parseRoot] at hr ⊢
    cases hw : parseRootWhile env n ⟨false, false⟩ st with
    | none =>
      rw [hw] at hr
      cases hr
    | some w =>
      rw [hw] at hr
      cases hr
      rw [parseRootWhile_below env n _ st w cs up up' hp hw he]

/-- The cursor behind a `Root` element read without error. -/
theorem parseRoot_sync (env : Env) (n : Nat) (st : Reader) (r : Bool × Reader)
    (cs : List XmlElement) (up : List (List XmlElement)) (hp : st.pending = cs :: up)
    (hr : parseRoot env n st = some r) (he : r.2.hasError = false) : r.2.pending = up := by
  cases n with
  | zero => simp [parseRoot] at hr
  | succ n =>
    rw [parseRoot] at hr
    cases hw : parseRootWhile env n ⟨false, false⟩ st with
    | none =>
      rw [hw] at hr
      cases hr
    | some w =>
      rw [hw] at hr
      cases hr
      exact (parseRootWhile_sync env n _ st w cs up hp hw he).1

/-- An error before `parseRoot` is there after it. -/
theorem parseRoot_hasError (env : Env) (n : Nat) (st : Reader) (r : Bool × Reader)
    (h : st.hasError = true) (hr : parseRoot env n st = some r) : r.2.hasError = true := by
  cases n with
  | zero => simp [parseRoot] at hr
  | succ n =>
    rw [parseRoot] at hr
    cases hw : parseRootWhile env n ⟨false, false⟩ st with
    | none =>
      rw [hw] at hr
      cases hr
    | some w =>
      rw [hw] at hr
      cases hr
      exact parseRootWhile_stable stable_hasError env n _ st w h hw

/-- The document element read without error and with the flag of success is
read in the same way whatever the cursor holds behind its end. -/
theorem parseKeePassFileWhile_below (env : Env) (n : Nat) :
    ∀ l st r cs up up', st.pending = cs :: up →
      parseKeePassFileWhile env n l st = some r → r.2.hasError = false →
      r.1.rootParsedSuccessfully = true →
      parseKeePassFileWhile env n l (st.setPending (cs :: up'))
        = some (r.1, r.2.setPending up') := by
  induction n with
  | zero => simp [parseKeePassFileWhile]
  | succ n ih =>
    intro l st r cs up up' hp hr he hf
    have st_aux := parseKeePassFileWhile_stable stable_hasError env n
    have hst : st.hasError = false :=
      hasError_false_of_stable
        (fun h => parseKeePassFileWhile_stable stable_hasError env (n + 1) l st r h hr) he
    have hx := xmlError_false_of_hasError hst
    rw [parseKeePassFileWhile] at hr ⊢
    rcases readNext_cases hp hx with ⟨hcs, h1⟩ | ⟨x, rest, hcs, h1⟩
    · subst hcs
      rw [h1] at hr
      cases hr
      rw [@readNextStartElement_nil (st.setPending ([] :: up')) _ hx rfl]
      rfl
    · subst hcs
      rw [h1] at hr
      rw [@readNextStartElement_cons (st.setPending ((x :: rest) :: up')) _ _ _ hx rfl,
        setPending_setPending]
      simp only at hr ⊢
      by_cases hname : x.name = "Meta"
      · simp only [hname, if_true] at hr ⊢
        have e := parseMeta_ins env (u := x) (Inserted.refl false x) hname
          (st.setPending (x.children :: rest :: up)) (x.children :: rest :: up')
        rw [setPending_setPending] at e
        rw [e]
        simp only [endElement_setPending_cons]
        refine ih _ _ r rest up up' ?_ hr he hf
        exact endElement_pending (c := x.children)
          ((parseMeta_pending env x _).trans rfl)
      · simp only [hname, if_false] at hr ⊢
        by_cases hname2 : x.name = "Root"
        · simp only [hname2, if_true] at hr ⊢
          cases hfound : l.rootElementFound with
          | true =>
            exfalso
            simp only [hfound, if_true] at hr
            have := parseKeePassFileWhile_flag env n _ _ r hr rfl rfl
            rw [hf] at this
            cases this
          | false =>
            simp only [hfound, Bool.false_eq_true, if_false] at hr ⊢
            cases hh : parseRoot env n (st.setPending (x.children :: rest :: up)) with
            | none =>
              rw [hh] at hr
              cases hr
            | some w =>
              rw [hh] at hr
              simp only at hr
              have he2 : w.2.hasError = false :=
                hasError_false_of_stable (fun h => st_aux _ _ r h hr) he
              have k := parseRoot_below env n _ w x.children (rest :: up) (rest :: up') rfl hh he2
              rw [setPending_setPending] at k
              rw [k]
              simp only
              have hp2 := parseRoot_sync env n _ w x.children (rest :: up) rfl hh he2
              exact ih _ _ r rest up up' hp2 hr he hf
        · simp only [hname2, if_false] at hr ⊢
          rw [skipCurrentElement_setPending_cons] at hr ⊢
          have k := ih l (st.setPending (rest :: up)) r rest up up' rfl hr he hf
          rw [setPending_setPending] at k
          exact k

/-! ### The decode without error and an element that its parent does not test for -/

/-- The first elements of two lists of child elements, one with an
insertion. -/
theorem insertedList_cases {T : String → List String} {u : XmlElement} {b : Bool}
    {L : List String} {cs ds : List XmlElement} (h : InsertedList T u b L cs ds) :
    cs = ds ∨ (u.name ∉ L ∧ ds = u :: cs) ∨
    (∃ x y rest rest', cs = x :: rest ∧ ds = y :: rest' ∧ Inserted T u b x y ∧
      InsertedList T u b L rest rest') := by
  cases h with
  | refl => exact Or.inl rfl
  | here pre post hu =>
    cases pre with
    | nil => exact Or.inr (Or.inl ⟨hu, rfl⟩)
    | cons x pre' =>
      exact Or.inr (Or.inr ⟨x, x, pre' ++ post, pre' ++ u :: post, rfl, rfl,
        Inserted.refl b x, InsertedList.here pre' post hu⟩)
  | inside pre c d post hc =>
    cases pre with
    | nil => exact Or.inr (Or.inr ⟨c, d, post, post, rfl, rfl, hc, InsertedList.refl _⟩)
    | cons x pre' =>
      exact Or.inr (Or.inr ⟨x, x, pre' ++ c :: post, pre' ++ d :: post, rfl, rfl,
        Inserted.refl b x, InsertedList.inside pre' c d post hc⟩)

/-- The child elements of an element with an insertion, for an element read
with a loop of its own. -/
theorem inserted_kids {u : XmlElement} {b : Bool} {x y : XmlElement}
    (h : Inserted recognizedBy u b x y) (k : String) (hk : x.name = k)
    (hb : k ≠ "Binaries") :
    InsertedList recognizedBy u false (recognizedBy k) x.children y.children := by
  have hl := inserted_children h
  rw [hk, decide_eq_false hb] at hl
  exact hl

theorem endElement_setPending_self (st : Reader) (c : List XmlElement)
    (q : List (List XmlElement)) :
    (st.setPending (c :: q)).endElement = st.setPending q := rfl

/-- An `Entry` element read without error gives the same result with one more
child element, in it or below it, whose name the loop of its parent element does
not test for. -/
theorem entry_local (env : Env) (u : XmlElement) (n : Nat) :
    (∀ history l st r cs ds up up', st.pending = cs :: up →
      InsertedList recognizedBy u false (recognizedBy "Entry") cs ds →
      parseEntryWhile env n history l st = some r → r.2.hasError = false →
      parseEntryWhile env (n + 1) history l (st.setPending (ds :: up'))
        = some (r.1, r.2.setPending up')) ∧
    (∀ history st r cs ds up up', st.pending = cs :: up →
      InsertedList recognizedBy u false (recognizedBy "Entry") cs ds →
      parseEntry env n history st = some r → r.2.hasError = false →
      parseEntry env (n + 1) history (st.setPending (ds :: up'))
        = some (r.1, r.2.setPending up')) ∧
    (∀ items st r cs ds up up', st.pending = cs :: up →
      InsertedList recognizedBy u false (recognizedBy "History") cs ds →
      parseEntryHistoryWhile env n items st = some r → r.2.hasError = false →
      parseEntryHistoryWhile env (n + 1) items (st.setPending (ds :: up'))
        = some (r.1, r.2.setPending up')) ∧
    (∀ st r cs ds up up', st.pending = cs :: up →
      InsertedList recognizedBy u false (recognizedBy "History") cs ds →
      parseEntryHistory env n st = some r → r.2.hasError = false →
      parseEntryHistory env (n + 1) (st.setPending (ds :: up'))
        = some (r.1, r.2.setPending up')) := by
  induction n with
  | zero => simp [parseEntryWhile, parseEntry, parseEntryHistoryWhile, parseEntryHistory]
  | succ n ih =>
    obtain ⟨ihW, ihE, ihHW, ihH⟩ := ih
    have st_aux := parseEntry_stable_aux stable_hasError env n
    refine ⟨?_, ?_, ?_, ?_⟩
    · intro history l st r cs ds up up' hp hl hr he
      have hst : st.hasError = false :=
        hasError_false_of_stable
          (fun h => (parseEntry_stable_aux stable_hasError env (n + 1)).1 history l st r h hr) he
      have hx := xmlError_false_of_hasError hst
      rcases insertedList_cases hl with e | ⟨hu, e⟩ | ⟨x, y, rest, rest', e1, e2, hI, hl2⟩
      · subst e
        exact (entry_fuel_succ env (n + 1)).1 _ _ _ _
          ((entry_below env (n + 1)).1 history l st r cs up up' hp hr he)
      · subst e
        rw [parseEntryWhile]
        rw [@readNextStartElement_cons (st.setPending ((u :: cs) :: up')) _ _ _ hx rfl,
          setPending_setPending]
        have hn1 : ¬ u.name = "History" := by
          intro h
          apply hu
          rw [h]
          decide
        simp only [hn1, if_false]
        rw [parseEntryField_skip env l.entry hu, endElement_setPending_self]
        exact (entry_below env (n + 1)).1 history l st r cs up up' hp hr he
      · subst e1 e2
        rw [parseEntryWhile] at hr ⊢
        rw [readNextStartElement_cons hx hp] at hr
        rw [@readNextStartElement_cons (st.setPending ((y :: rest') :: up')) _ _ _ hx rfl,
          setPending_setPending]
        simp only [(inserted_head hI).1] at hr ⊢
        by_cases hname : x.name = "History"
        · simp only [hname, if_true] at hr ⊢
          cases history with
          | true =>
            exfalso
            simp only [if_true] at hr
            have := st_aux.1 _ _ _ r (hasError_raiseError _ _) hr
            rw [he] at this
            cases this
          | false =>
            simp only [Bool.false_eq_true, if_false] at hr ⊢
            cases hh : parseEntryHistory env n (st.setPending (x.children :: rest :: up)) with
            | none =>
              rw [hh] at hr
              cases hr
            | some w =>
              rw [hh] at hr
              simp only at hr
              have he2 : w.2.hasError = false :=
                hasError_false_of_stable (fun h => st_aux.1 _ _ _ r h hr) he
              have k := ihH _ w x.children y.children (rest :: up) (rest' :: up') rfl
                (inserted_kids hI "History" hname (by decide)) hh he2
              rw [setPending_setPending] at k
              rw [k]
              simp only
              have hp2 := (entry_sync env n).2.2.2 _ w x.children (rest :: up) rfl hh he2
              exact ihW _ _ _ r rest rest' up up' hp2 hl2 hr he
        · simp only [hname, if_false] at hr ⊢
          have e := parseEntryField_ins env l.entry hI l.binaryRefs
            (st.setPending (x.children :: rest :: up)) (y.children :: rest' :: up')
          rw [setPending_setPending] at e
          rw [e]
          simp only [endElement_setPending_cons]
          refine ihW _ _ _ r rest rest' up up' ?_ hl2 hr he
          exact endElement_pending (c := x.children)
            ((parseEntryField_pending env l.entry x _).trans rfl)
    · intro history st r cs ds up up' hp hl hr he
      rw [parseEntry] at hr ⊢
      simp only [newEntry_setPending, updEntry_setPending] at hr ⊢
      cases hw : parseEntryWhile env n history ⟨st.newEntry.1, [], []⟩
          (st.newEntry.2.updEntry st.newEntry.1
            (fun e => { e with m_updateTimeinfo := false })) with
      | none =>
        rw [hw] at hr
        cases hr
      | some w =>
        rw [hw] at hr
        cases hr
        have he3 : w.2.hasError = false :=
          hasError_false_of_stable
            (fun h => parseEntryFinish_stable stable_hasError h) he
        have k := ihW history _ _ w cs ds up up' (by simpa [Reader.newEntry] using hp) hl hw he3
        rw [k]
        simp only
        rw [parseEntryFinish_setPending]
    · intro items st r cs ds up up' hp hl hr he
      have hst : st.hasError = false :=
        hasError_false_of_stable
          (fun h => (parseEntry_stable_aux stable_hasError env (n + 1)).2.2.1 items st r h hr) he
      have hx := xmlError_false_of_hasError hst
      rcases insertedList_cases hl with e | ⟨hu, e⟩ | ⟨x, y, rest, rest', e1, e2, hI, hl2⟩
      · subst e
        exact (entry_fuel_succ env (n + 1)).2.2.1 _ _ _
          ((entry_below env (n + 1)).2.2.1 items st r cs up up' hp hr he)
      · subst e
        rw [parseEntryHistoryWhile]
        rw [@readNextStartElement_cons (st.setPending ((u :: cs) :: up')) _ _ _ hx rfl,
          setPending_setPending]
        have hn1 : ¬ u.name = "Entry" := by
          intro h
          apply hu
          rw [h]
          decide
        simp only [hn1, if_false]
        rw [skipCurrentElement_setPending_cons]
        exact (entry_below env (n + 1)).2.2.1 items st r cs up up' hp hr he
      · subst e1 e2
        rw [parseEntryHistoryWhile] at hr ⊢
        rw [readNextStartElement_cons hx hp] at hr
        rw [@readNextStartElement_cons (st.setPending ((y :: rest') :: up')) _ _ _ hx rfl,
          setPending_setPending]
        simp only [(inserted_head hI).1] at hr ⊢
        by_cases hname : x.name = "Entry"
        · simp only [hname, if_true] at hr ⊢
          cases hh : parseEntry env n true (st.setPending (x.children :: rest :: up)) with
          | none =>
            rw [hh] at hr
            cases hr
          | some w =>
            rw [hh] at hr
            simp only at hr
            have he2 : w.2.hasError = false :=
              hasError_false_of_stable (fun h => st_aux.2.2.1 _ _ r h hr) he
            have k := ihE true _ w x.children y.children (rest :: up) (rest' :: up') rfl
              (inserted_kids hI "Entry" hname (by decide)) hh he2
            rw [setPending_setPending] at k
            rw [k]
            simp only
            have hp2 := (entry_sync env n).2.1 true _ w x.children (rest :: up) rfl hh he2
            exact ihHW _ _ r rest rest' up up' hp2 hl2 hr he
        · simp only [hname, if_false] at hr ⊢
          rw [skipCurrentElement_setPending_cons] at hr ⊢
          have k := ihHW items (st.setPending (rest :: up)) r rest rest' up up' rfl hl2 hr he
          rw [setPending_setPending] at k
          exact k
    · intro st r cs ds up up' hp hl hr he
      rw [parseEntryHistory] at hr ⊢
      exact ihHW [] st r cs ds up up' hp hl hr he

/-- A `Group` element read without error gives the same result with one more
child element, in it or below it, whose name the loop of its parent element does
not test for. -/
theorem group_local (env : Env) (u : XmlElement) (n : Nat) :
    (∀ l st r cs ds up up', st.pending = cs :: up →
      InsertedList recognizedBy u false (recognizedBy "Group") cs ds →
      parseGroupWhile env n l st = some r → r.2.hasError = false →
      parseGroupWhile env (n + 1) l (st.setPending (ds :: up'))
        = some (r.1, r.2.setPending up')) ∧
    (∀ st r cs ds up up', st.pending = cs :: up →
      InsertedList recognizedBy u false (recognizedBy "Group") cs ds →
      parseGroup env n st = some r → r.2.hasError = false →
      parseGroup env (n + 1) (st.setPending (ds :: up'))
        = some (r.1, r.2.setPending up')) := by
  induction n with
  | zero => simp [parseGroupWhile, parseGroup]
  | succ n ih =>
    obtain ⟨ihW, ihG⟩ := ih
    have st_aux := parseGroup_stable_aux stable_hasError env n
    refine ⟨?_, ?_⟩
    · intro l st r cs ds up up' hp hl hr he
      have hst : st.hasError = false :=
        hasError_false_of_stable
          (fun h => (parseGroup_stable_aux stable_hasError env (n + 1)).1 l st r h hr) he
      have hx := xmlError_false_of_hasError hst
      rcases insertedList_cases hl with e | ⟨hu, e⟩ | ⟨x, y, rest, rest', e1, e2, hI, hl2⟩
      · subst e
        exact (group_fuel_succ env (n + 1)).1 _ _ _
          ((group_below env (n + 1)).1 l st r cs up up' hp hr he)
      · subst e
        rw [parseGroupWhile]
        rw [@readNextStartElement_cons (st.setPending ((u :: cs) :: up')) _ _ _ hx rfl,
          setPending_setPending]
        have hn1 : ¬ u.name = "Group" := by
          intro h
          apply hu
          rw [h]
          decide
        have hn2 : ¬ u.name = "Entry" := by
          intro h
          apply hu
          rw [h]
          decide
        simp only [hn1, hn2, if_false]
        rw [parseGroupField_skip env l.group hu, endElement_setPending_self]
        exact (group_below env (n + 1)).1 l st r cs up up' hp hr he
      · subst e1 e2
        rw [parseGroupWhile] at hr ⊢
        rw [readNextStartElement_cons hx hp] at hr
        rw [@readNextStartElement_cons (st.setPending ((y :: rest') :: up')) _ _ _ hx rfl,
          setPending_setPending]
        simp only [(inserted_head hI).1] at hr ⊢
        by_cases hname : x.name = "Group"
        · simp only [hname, if_true] at hr ⊢
          cases hh : parseGroup env n (st.setPending (x.children :: rest :: up)) with
          | none =>
            rw [hh] at hr
            cases hr
          | some w =>
            rw [hh] at hr
            simp only at hr
            have he2 : w.2.hasError = false :=
              hasError_false_of_stable (fun h => st_aux.1 _ _ r h hr) he
            have k := ihG _ w x.children y.children (rest :: up) (rest' :: up') rfl
              (inserted_kids hI "Group" hname (by decide)) hh he2
            rw [setPending_setPending] at k
            rw [k]
            simp only
            have hp2 := (group_sync env n).2 _ w x.children (rest :: up) rfl hh he2
            exact ihW _ _ r rest rest' up up' hp2 hl2 hr he
        · simp only [hname, if_false] at hr ⊢
          by_cases hname2 : x.name = "Entry"
          · simp only [hname2, if_true] at hr ⊢
            cases hh : parseEntry env n false (st.setPending (x.children :: rest :: up)) with
            | none =>
              rw [hh] at hr
              cases hr
            | some w =>
              rw [hh] at hr
              simp only at hr
              have he2 : w.2.hasError = false :=
                hasError_false_of_stable (fun h => st_aux.1 _ _ r h hr) he
              have k := (entry_local env u n).2.1 false _ w x.children y.children (rest :: up)
                (rest' :: up') rfl (inserted_kids hI "Entry" hname2 (by decide)) hh he2
              rw [setPending_setPending] at k
              rw [k]
              simp only
              have hp2 := (entry_sync env n).2.1 false _ w x.children (rest :: up) rfl hh he2
              exact ihW _ _ r rest rest' up up' hp2 hl2 hr he
          · simp only [hname2, if_false] at hr ⊢
            have e := parseGroupField_ins env l.group hI
              (st.setPending (x.children :: rest :: up)) (y.children :: rest' :: up')
            rw [setPending_setPending] at e
            rw [e]
            simp only [endElement_setPending_cons]
            refine ihW _ _ r rest rest' up up' ?_ hl2 hr he
            exact endElement_pending (c := x.children)
              ((parseGroupField_pending env l.group x _).trans rfl)
    · intro st r cs ds up up' hp hl hr he
      rw [parseGroup] at hr ⊢
      simp only [newGroup_setPending, updGroup_setPending] at hr ⊢
      cases hw : parseGroupWhile env n ⟨st.newGroup.1, [], []⟩
          (st.newGroup.2.updGroup st.newGroup.1
            (fun g => { g with m_updateTimeinfo := false })) with
      | none =>
        rw [hw] at hr
        cases hr
      | some w =>
        rw [hw] at hr
        cases hr
        have he3 : w.2.hasError = false :=
          hasError_false_of_stable
            (fun h => parseGroupFinish_stable stable_hasError h) he
        have k := ihW _ _ w cs ds up up' (by simpa [Reader.newGroup] using hp) hl hw he3
        rw [k]
        simp only
        rw [parseGroupFinish_setPending]

/-- A `Root` element read without error gives the same result with one more
child element, in it or below it, whose name the loop of its parent element does
not test for. -/
theorem parseRootWhile_local (env : Env) (u : XmlElement) (n : Nat) :
    ∀ l st r cs ds up up', st.pending = cs :: up →
      InsertedList recognizedBy u false (recognizedBy "Root") cs ds →
      parseRootWhile env n l st = some r → r.2.hasError = false →
      parseRootWhile env (n + 1) l (st.setPending (ds :: up'))
        = some (r.1, r.2.setPending up') := by
  induction n with
  | zero => simp [parseRootWhile]
  | succ n ih =>
    intro l st r cs ds up up' hp hl hr he
    have st_aux := parseRootWhile_stable stable_hasError env n
    have hst : st.hasError = false :=
      hasError_false_of_stable
        (fun h => parseRootWhile_stable stable_hasError env (n + 1) l st r h hr) he
    have hx := xmlError_false_of_hasError hst
    rcases insertedList_cases hl with e | ⟨hu, e⟩ | ⟨x, y, rest, rest', e1, e2, hI, hl2⟩
    · subst e
      exact parseRootWhile_fuel_succ env (n + 1) _ _ _
        (parseRootWhile_below env (n + 1) l st r cs up up' hp hr he)
    · subst e
      rw [parseRootWhile]
      rw [@readNextStartElement_cons (st.setPending ((u :: cs) :: up')) _ _ _ hx rfl,
        setPending_setPending]
      have hn1 : ¬ u.name = "Group" := by
        intro h
        apply hu
        rw [h]
        decide
      have hn2 : ¬ u.name = "DeletedObjects" := by
        intro h
        apply hu
        rw [h]
        decide
      simp only [hn1, hn2, if_false]
      rw [skipCurrentElement_setPending_cons]
      exact parseRootWhile_below env (n + 1) l st r cs up up' hp hr he
    · subst e1 e2
      rw [parseRootWhile] at hr ⊢
      rw [readNextStartElement_cons hx hp] at hr
      rw [@readNextStartElement_cons (st.setPending ((y :: rest') :: up')) _ _ _ hx rfl,
        setPending_setPending]
      simp only [(inserted_head hI).1] at hr ⊢
      by_cases hname : x.name = "Group"
      · simp only [hname, if_true] at hr ⊢
        cases hf : l.groupElementFound with
        | true =>
          exfalso
          simp only [hf, if_true] at hr
          have := st_aux _ _ r (hasError_raiseError _ _) hr
          rw [he] at this
          cases this
        | false =>
          simp only [hf, Bool.false_eq_true, if_false] at hr ⊢
          cases hh : parseGroup env n (st.setPending (x.children :: rest :: up)) with
          | none =>
            rw [hh] at hr
            cases hr
          | some w =>
            rw [hh] at hr
            simp only at hr
            have he4 : ((w.2.setRootGroup w.1).deleteGroup w.2.rootGroup).hasError = false :=
              hasError_false_of_stable (fun h => st_aux _ _ r h hr) he
            have he2 : w.2.hasError = false := by
              simpa [Reader.hasError, Reader.deleteGroup, Reader.setRootGroup] using he4
            have k := (group_local env u n).2 _ w x.children y.children (rest :: up)
              (rest' :: up') rfl (inserted_kids hI "Group" hname (by decide)) hh he2
            rw [setPending_setPending] at k
            rw [k]
            simp only
            have hp2 := (group_sync env n).2 _ w x.children (rest :: up) rfl hh he2
            rw [rootSwap_setPending]
            exact ih _ _ r rest rest' up up' ((rootSwap_pending w.2 w.1).trans hp2) hl2 hr he
      · simp only [hname, if_false] at hr ⊢
        by_cases hname2 : x.name = "DeletedObjects"
        · simp only [hname2, if_true] at hr ⊢
          have e := parseDeletedObjects_ins env hI hname2
            (st.setPending (x.children :: rest :: up)) (y.children :: rest' :: up')
          rw [setPending_setPending] at e
          rw [e]
          simp only [endElement_setPending_cons]
          refine ih _ _ r rest rest' up up' ?_ hl2 hr he
          exact endElement_pending (c := x.children)
            ((parseDeletedObjects_pending env x _).trans rfl)
        · simp only [hname2, if_false] at hr ⊢
          rw [skipCurrentElement_setPending_cons] at hr ⊢
          have k := ih l (st.setPending (rest :: up)) r rest rest' up up' rfl hl2 hr he
          rw [setPending_setPending] at k
          exact k

/-- The function `parseRoot` on a `Root` element read without error gives the
same result with one more child element, in it or below it, whose name the loop
of its parent element does not test for. -/
theorem parseRoot_local (env : Env) (u : XmlElement) (n : Nat) (st : Reader)
    (r : Bool × Reader) (cs ds : List XmlElement) (up up' : List (List XmlElement))
    (hp : st.pending = cs :: up)
    (hl : InsertedList recognizedBy u false (recognizedBy "Root") cs ds)
    (hr : parseRoot env n st = some r) (he : r.2.hasError = false) :
    parseRoot env (n + 1) (st.setPending (ds :: up')) = some (r.1, r.2.setPending up') := by
  cases n with
  | zero => simp [parseRoot] at hr
  | succ n =>
    rw [parseRoot] at hr ⊢
    cases hw : parseRootWhile env n ⟨false, false⟩ st with
    | none =>
      rw [hw] at hr
      cases hr
    | some w =>
      rw [hw] at hr
      cases hr
      rw [parseRootWhile_local env u n _ st w cs ds up up' hp hl hw he]

/-- The document element read without error and with the flag of success gives
the same result with one more child element, in it or below it, whose name the
loop of its parent element does not test for. -/
theorem parseKeePassFileWhile_local (env : Env) (u : XmlElement) (n : Nat) :
    ∀ l st r cs ds up up', st.pending = cs :: up →
      InsertedList recognizedBy u false (recognizedBy "KeePassFile") cs ds →
      parseKeePassFileWhile env n l st = some r → r.2.hasError = false →
      r.1.rootParsedSuccessfully = true →
      parseKeePassFileWhile env (n + 1) l (st.setPending (ds :: up'))
        = some (r.1, r.2.setPending up') := by
  induction n with
  | zero => simp [parseKeePassFileWhile]
  | succ n ih =>
    intro l st r cs ds up up' hp hl hr he hf
    have st_aux := parseKeePassFileWhile_stable stable_hasError env n
    have hst : st.hasError = false :=
      hasError_false_of_stable
        (fun h => parseKeePassFileWhile_stable stable_hasError env (n + 1) l st r h hr) he
    have hx := xmlError_false_of_hasError hst
    rcases insertedList_cases hl with e | ⟨hu, e⟩ | ⟨x, y, rest, rest', e1, e2, hI, hl2⟩
    · subst e
      exact parseKeePassFileWhile_fuel_succ env (n + 1) _ _ _
        (parseKeePassFileWhile_below env (n + 1) l st r cs up up' hp hr he hf)
    · subst e
      rw [parseKeePassFileWhile]
      rw [@readNextStartElement_cons (st.setPending ((u :: cs) :: up')) _ _ _ hx rfl,
        setPending_setPending]
      have hn1 : ¬ u.name = "Meta" := by
        intro h
        apply hu
        rw [h]
        decide
      have hn2 : ¬ u.name = "Root" := by
        intro h
        apply hu
        rw [h]
        decide
      simp only [hn1, hn2, if_false]
      rw [skipCurrentElement_setPending_cons]
      exact parseKeePassFileWhile_below env (n + 1) l st r cs up up' hp hr he hf
    · subst e1 e2
      rw [parseKeePassFileWhile] at hr ⊢
      rw [readNextStartElement_cons hx hp] at hr
      rw [@readNextStartElement_cons (st.setPending ((y :: rest') :: up')) _ _ _ hx rfl,
        setPending_setPending]
      simp only [(inserted_head hI).1] at hr ⊢
      by_cases hname : x.name = "Meta"
      · simp only [hname, if_true] at hr ⊢
        have e := parseMeta_ins env hI hname
          (st.setPending (x.children :: rest :: up)) (y.children :: rest' :: up')
        rw [setPending_setPending] at e
        rw [e]
        simp only [endElement_setPending_cons]
        refine ih _ _ r rest rest' up up' ?_ hl2 hr he hf
        exact endElement_pending (c := x.children)
          ((parseMeta_pending env x _).trans rfl)
      · simp only [hname, if_false] at hr ⊢
        by_cases hname2 : x.name = "Root"
        · simp only [hname2, if_true] at hr ⊢
          cases hfound : l.rootElementFound with
          | true =>
            exfalso
            simp only [hfound, if_true] at hr
            have := parseKeePassFileWhile_flag env n _ _ r hr rfl rfl
            rw [hf] at this
            cases this
          | false =>
            simp only [hfound, Bool.false_eq_true, if_false] at hr ⊢
            cases hh : parseRoot env n (st.setPending (x.children :: rest :: up)) with
            | none =>
              rw [hh] at hr
              cases hr
            | some w =>
              rw [hh] at hr
              simp only at hr
              have he2 : w.2.hasError = false :=
                hasError_false_of_stable (fun h => st_aux _ _ r h hr) he
              have k := parseRoot_local env u n _ w x.children y.children (rest :: up)
                (rest' :: up') rfl (inserted_kids hI "Root" hname2 (by decide)) hh he2
              rw [setPending_setPending] at k
              rw [k]
              simp only
              have hp2 := parseRoot_sync env n _ w x.children (rest :: up) rfl hh he2
              exact ih _ _ r rest rest' up up' hp2 hl2 hr he hf
        · simp only [hname2, if_false] at hr ⊢
          rw [skipCurrentElement_setPending_cons] at hr ⊢
          have k := ih l (st.setPending (rest :: up)) r rest rest' up up' rfl hl2 hr he hf
          rw [setPending_setPending] at k
          exact k

/-- The function `parseKeePassFile` on a document element read without error and
with success gives the same result with one more child element, in it or below
it, whose name the loop of its parent element does not test for. -/
theorem parseKeePassFile_local (env : Env) (u : XmlElement) (n : Nat) (st : Reader)
    (r : Bool × Reader) (cs ds : List XmlElement) (up up' : List (List XmlElement))
    (hp : st.pending = cs :: up)
    (hl : InsertedList recognizedBy u false (recognizedBy "KeePassFile") cs ds)
    (hr : parseKeePassFile env n st = some r) (he : r.2.hasError = false)
    (hf : r.1 = true) :
    parseKeePassFile env (n + 1) (st.setPending (ds :: up'))
      = some (r.1, r.2.setPending up') ∧ r.2.pending = up := by
  cases n with
  | zero => simp [parseKeePassFile] at hr
  | succ n =>
    rw [parseKeePassFile] at hr ⊢
    cases hw : parseKeePassFileWhile env n ⟨false, false⟩ st with
    | none =>
      rw [hw] at hr
      cases hr
    | some w =>
      rw [hw] at hr
      cases hr
      rw [parseKeePassFileWhile_local env u n _ st w cs ds up up' hp hl hw he hf]
      exact ⟨rfl, (parseKeePassFileWhile_sync env n _ st w cs up hp hw he hf).1⟩

/-- The closing code ends without error only after a parse stage that ended
without error and with a root group. -/
theorem readDatabaseFinish_noError (env : Env) (ok : Bool) (st : Reader)
    (h : (readDatabaseFinish env ok st).hasError = false) :
    ok = true ∧ st.hasError = false := by
  cases ok with
  | false =>
    exfalso
    have : (readDatabaseFinish env false st).hasError = true := by
      unfold readDatabaseFinish
      exact hasError_raiseError _ _
    rw [h] at this
    cases this
  | true =>
    rw [hasError_readDatabaseFinish] at h
    exact ⟨rfl, h⟩

/-- The decode of a document that ends without error is, on one more unit of
fuel, the decode of the document with one more element whose name the loop of
its parent element does not test for. -/
theorem readDatabaseFuel_local (env : Env) (fuel : Nat) (strictMode : Bool)
    (binaryPool : List (String × QByteArray)) (randomStream : Option QByteArray)
    {u doc doc' : XmlElement} (hI : Inserted recognizedBy u false doc doc') (r : Reader)
    (h : readDatabaseFuel env fuel strictMode binaryPool randomStream doc = some r)
    (he : r.hasError = false) :
    readDatabaseFuel env (fuel + 1) strictMode binaryPool randomStream doc' = some r := by
  unfold readDatabaseFuel at h ⊢
  have hx0 : (Reader.start strictMode binaryPool randomStream doc).xmlError = false := rfl
  have hp0 : (Reader.start strictMode binaryPool randomStream doc).pending
      = (doc :: []) :: [] := rfl
  have hs : Reader.start strictMode binaryPool randomStream doc'
      = (Reader.start strictMode binaryPool randomStream doc).setPending ((doc' :: []) :: []) :=
    rfl
  rw [hs]
  generalize Reader.start strictMode binaryPool randomStream doc = s0 at h hx0 hp0 ⊢
  have hx1 : (s0.setPending ((doc' :: []) :: [])).xmlError = false := hx0
  have hp1 : (s0.setPending ((doc' :: []) :: [])).pending = (doc' :: []) :: [] := rfl
  rw [readNextStartElement_cons hx0 hp0] at h
  replace h : (if doc.name = "KeePassFile" then
      (match parseKeePassFile env fuel (s0.setPending (doc.children :: [] :: [])) with
        | none => none
        | some (rootGroupParsed, st2) => some (readDatabaseFinish env rootGroupParsed st2))
      else some (readDatabaseFinish env false (s0.setPending (doc.children :: [] :: []))))
      = some r := h
  rw [readNextStartElement_cons hx1 hp1, setPending_setPending]
  simp only [(inserted_head hI).1]
  by_cases hname : doc.name = "KeePassFile"
  · rw [if_pos hname] at h
    simp only [hname, if_true]
    cases hh : parseKeePassFile env fuel (s0.setPending (doc.children :: [] :: [])) with
    | none =>
      rw [hh] at h
      cases h
    | some w =>
      rw [hh] at h
      simp only [Option.some.injEq] at h
      rw [← h] at he
      obtain ⟨hok, hw⟩ := readDatabaseFinish_noError env w.1 w.2 he
      obtain ⟨k, hp2⟩ := parseKeePassFile_local env u fuel
        (s0.setPending (doc.children :: [] :: [])) w doc.children doc'.children ([] :: [])
        ([] :: []) rfl (inserted_kids hI "KeePassFile" hname (by decide)) hh hw hok
      rw [setPending_setPending] at k
      rw [k]
      simp only
      rw [← hp2, setPending_self, h]
  · exfalso
    rw [if_neg hname] at h
    simp only [Option.some.injEq] at h
    rw [← h] at he
    have := (readDatabaseFinish_noError env false _ he).1
    cases this

/-- The decode of a document that ends without error is the decode of the
document with one more element whose name the loop of its parent element does
not test for. -/
theorem readDatabase_local (env : Env) (strictMode : Bool)
    (binaryPool : List (String × QByteArray)) (randomStream : Option QByteArray)
    {u doc doc' : XmlElement} (hI : Inserted recognizedBy u false doc doc') (r : Reader)
    (h : readDatabase env strictMode binaryPool randomStream doc = some r)
    (he : r.hasError = false) :
    readDatabase env strictMode binaryPool randomStream doc' = some r := by
  obtain ⟨r', hr'⟩ := readDatabase_total env strictMode binaryPool randomStream doc'
  unfold readDatabase at h hr'
  have hq := readDatabaseFuel_local env _ strictMode binaryPool randomStream hI r h he
  have e1 := readDatabaseFuel_fuel_le env _ (max (4 * doc.size + 2 + 1) (4 * doc'.size + 2))
    _ _ _ _ _ hq (Nat.le_max_left _ _)
  have e2 := readDatabaseFuel_fuel_le env _ (max (4 * doc.size + 2 + 1) (4 * doc'.size + 2))
    _ _ _ _ _ hr' (Nat.le_max_right _ _)
  rw [e1] at e2
  simp only [Option.some.injEq] at e2
  unfold readDatabase
  rw [hr', e2]

/-! ### The decode without error of the document with the element -/

theorem setPending_of_pending {st : Reader} {q : List (List XmlElement)} (h : st.pending = q) :
    st.setPending q = st := by
  rw [← h]
  exact setPending_self st

/-- An `Entry` element with one more child element, in it or below it, whose
name the loop of its parent element does not test for: when it is read without
error, the element without that child gives the same result. -/
theorem entry_removed (env : Env) (u : XmlElement) (n : Nat) :
    (∀ history l st r cs ds up up', st.pending = ds :: up →
      InsertedList recognizedBy u false (recognizedBy "Entry") cs ds →
      parseEntryWhile env n history l st = some r → r.2.hasError = false →
      parseEntryWhile env n history l (st.setPending (cs :: up'))
        = some (r.1, r.2.setPending up')) ∧
    (∀ history st r cs ds up up', st.pending = ds :: up →
      InsertedList recognizedBy u false (recognizedBy "Entry") cs ds →
      parseEntry env n history st = some r → r.2.hasError = false →
      parseEntry env n history (st.setPending (cs :: up'))
        = some (r.1, r.2.setPending up')) ∧
    (∀ items st r cs ds up up', st.pending = ds :: up →
      InsertedList recognizedBy u false (recognizedBy "History") cs ds →
      parseEntryHistoryWhile env n items st = some r → r.2.hasError = false →
      parseEntryHistoryWhile env n items (st.setPending (cs :: up'))
        = some (r.1, r.2.setPending up')) ∧
    (∀ st r cs ds up up', st.pending = ds :: up →
      InsertedList recognizedBy u false (recognizedBy "History") cs ds →
      parseEntryHistory env n st = some r → r.2.hasError = false →
      parseEntryHistory env n (st.setPending (cs :: up'))
        = some (r.1, r.2.setPending up')) := by
  induction n with
  | zero => simp [parseEntryWhile, parseEntry, parseEntryHistoryWhile, parseEntryHistory]
  | succ n ih =>
    obtain ⟨ihW, ihE, ihHW, ihH⟩ := ih
    have st_aux := parseEntry_stable_aux stable_hasError env n
    refine ⟨?_, ?_, ?_, ?_⟩
    · intro history l st r cs ds up up' hp hl hr he
      have hst : st.hasError = false :=
        hasError_false_of_stable
          (fun h => (parseEntry_stable_aux stable_hasError env (n + 1)).1 history l st r h hr) he
      have hx := xmlError_false_of_hasError hst
      rcases insertedList_cases hl with e | ⟨hu, e⟩ | ⟨x, y, rest, rest', e1, e2, hI, hl2⟩
      · subst e
        exact (entry_below env (n + 1)).1 history l st r cs up up' hp hr he
      · subst e
        rw [parseEntryWhile] at hr
        rw [readNextStartElement_cons hx hp] at hr
        have hn1 : ¬ u.name = "History" := by
          intro h
          apply hu
          rw [h]
          decide
        simp only [hn1, if_false] at hr
        rw [parseEntryField_skip env l.entry hu, endElement_setPending_self] at hr
        have k := (entry_below env n).1 history l (st.setPending (cs :: up)) r cs up up' rfl hr he
        rw [setPending_setPending] at k
        exact (entry_fuel_succ env n).1 _ _ _ _ k
      · subst e1 e2
        rw [parseEntryWhile] at hr ⊢
        rw [readNextStartElement_cons hx hp] at hr
        rw [@readNextStartElement_cons (st.setPending ((x :: rest) :: up')) _ _ _ hx rfl,
          setPending_setPending]
        simp only [(inserted_head hI).1] at hr ⊢
        by_cases hname : x.name = "History"
        · simp only [hname, if_true] at hr ⊢
          cases history with
          | true =>
            exfalso
            simp only [if_true] at hr
            have := st_aux.1 _ _ _ r (hasError_raiseError _ _) hr
            rw [he] at this
            cases this
          | false =>
            simp only [Bool.false_eq_true, if_false] at hr ⊢
            cases hh : parseEntryHistory env n (st.setPending (y.children :: rest' :: up)) with
            | none =>
              rw [hh] at hr
              cases hr
            | some w =>
              rw [hh] at hr
              simp only at hr
              have he2 : w.2.hasError = false :=
                hasError_false_of_stable (fun h => st_aux.1 _ _ _ r h hr) he
              have k := ihH _ w x.children y.children (rest' :: up) (rest :: up') rfl
                (inserted_kids hI "History" hname (by decide)) hh he2
              rw [setPending_setPending] at k
              rw [k]
              simp only
              have hp2 := (entry_sync env n).2.2.2 _ w y.children (rest' :: up) rfl hh he2
              exact ihW _ _ _ r rest rest' up up' hp2 hl2 hr he
        · simp only [hname, if_false] at hr ⊢
          have e := parseEntryField_ins env l.entry hI l.binaryRefs
            (st.setPending (x.children :: rest :: up')) (y.children :: rest' :: up)
          rw [setPending_setPending] at e
          rw [e] at hr
          simp only [endElement_setPending_cons] at hr
          have hp2 : (parseEntryField env l.entry x
              (l.binaryRefs, st.setPending (x.children :: rest :: up'))).2.endElement.pending
              = rest :: up' :=
            endElement_pending (c := x.children)
              ((parseEntryField_pending env l.entry x _).trans rfl)
          have k := ihW _ _ _ r rest rest' up up' rfl hl2 hr he
          rw [setPending_setPending, setPending_of_pending hp2] at k
          exact k
    · intro history st r cs ds up up' hp hl hr he
      rw [parseEntry] at hr ⊢
      simp only [newEntry_setPending, updEntry_setPending] at hr ⊢
      cases hw : parseEntryWhile env n history ⟨st.newEntry.1, [], []⟩
          (st.newEntry.2.updEntry st.newEntry.1
            (fun e => { e with m_updateTimeinfo := false })) with
      | none =>
        rw [hw] at hr
        cases hr
      | some w =>
        rw [hw] at hr
        cases hr
        have he3 : w.2.hasError = false :=
          hasError_false_of_stable
            (fun h => parseEntryFinish_stable stable_hasError h) he
        have k := ihW history _ _ w cs ds up up' (by simpa [Reader.newEntry] using hp) hl hw he3
        rw [k]
        simp only
        rw [parseEntryFinish_setPending]
    · intro items st r cs ds up up' hp hl hr he
      have hst : st.hasError = false :=
        hasError_false_of_stable
          (fun h => (parseEntry_stable_aux stable_hasError env (n + 1)).2.2.1 items st r h hr) he
      have hx := xmlError_false_of_hasError hst
      rcases insertedList_cases hl with e | ⟨hu, e⟩ | ⟨x, y, rest, rest', e1, e2, hI, hl2⟩
      · subst e
        exact (entry_below env (n + 1)).2.2.1 items st r cs up up' hp hr he
      · subst e
        rw [parseEntryHistoryWhile] at hr
        rw [readNextStartElement_cons hx hp] at hr
        have hn1 : ¬ u.name = "Entry" := by
          intro h
          apply hu
          rw [h]
          decide
        simp only [hn1, if_false] at hr
        rw [skipCurrentElement_setPending_cons] at hr
        have k := (entry_below env n).2.2.1 items (st.setPending (cs :: up)) r cs up up' rfl hr he
        rw [setPending_setPending] at k
        exact (entry_fuel_succ env n).2.2.1 _ _ _ k
      · subst e1 e2
        rw [parseEntryHistoryWhile] at hr ⊢
        rw [readNextStartElement_cons hx hp] at hr
        rw [@readNextStartElement_cons (st.setPending ((x :: rest) :: up')) _ _ _ hx rfl,
          setPending_setPending]
        simp only [(inserted_head hI).1] at hr ⊢
        by_cases hname : x.name = "Entry"
        · simp only [hname, if_true] at hr ⊢
          cases hh : parseEntry env n true (st.setPending (y.children :: rest' :: up)) with
          | none =>
            rw [hh] at hr
            cases hr
          | some w =>
            rw [hh] at hr
            simp only at hr
            have he2 : w.2.hasError = false :=
              hasError_false_of_stable (fun h => st_aux.2.2.1 _ _ r h hr) he
            have k := ihE true _ w x.children y.children (rest' :: up) (rest :: up') rfl
              (inserted_kids hI "Entry" hname (by decide)) hh he2
            rw [setPending_setPending] at k
            rw [k]
            simp only
            have hp2 := (entry_sync env n).2.1 true _ w y.children (rest' :: up) rfl hh he2
            exact ihHW _ _ r rest rest' up up' hp2 hl2 hr he
        · simp only [hname, if_false] at hr ⊢
          rw [skipCurrentElement_setPending_cons] at hr ⊢
          have k := ihHW items (st.setPending (rest' :: up)) r rest rest' up up' rfl hl2 hr he
          rw [setPending_setPending] at k
          exact k
    · intro st r cs ds up up' hp hl hr he
      rw [parseEntryHistory] at hr ⊢
      exact ihHW [] st r cs ds up up' hp hl hr he

/-- A `Group` element with one more child element, in it or below it, whose
name the loop of its parent element does not test for: when it is read without
error, the element without that child gives the same result. -/
theorem group_removed (env : Env) (u : XmlElement) (n : Nat) :
    (∀ l st r cs ds up up', st.pending = ds :: up →
      InsertedList recognizedBy u false (recognizedBy "Group") cs ds →
      parseGroupWhile env n l st = some r → r.2.hasError = false →
      parseGroupWhile env n l (st.setPending (cs :: up'))
        = some (r.1, r.2.setPending up')) ∧
    (∀ st r cs ds up up', st.pending = ds :: up →
      InsertedList recognizedBy u false (recognizedBy "Group") cs ds →
      parseGroup env n st = some r → r.2.hasError = false →
      parseGroup env n (st.setPending (cs :: up'))
        = some (r.1, r.2.setPending up')) := by
  induction n with
  | zero => simp [parseGroupWhile, parseGroup]
  | succ n ih =>
    obtain ⟨ihW, ihG⟩ := ih
    have st_aux := parseGroup_stable_aux stable_hasError env n
    refine ⟨?_, ?_⟩
    · intro l st r cs ds up up' hp hl hr he
      have hst : st.hasError = false :=
        hasError_false_of_stable
          (fun h => (parseGroup_stable_aux stable_hasError env (n + 1)).1 l st r h hr) he
      have hx := xmlError_false_of_hasError hst
      rcases insertedList_cases hl with e | ⟨hu, e⟩ | ⟨x, y, rest, rest', e1, e2, hI, hl2⟩
      · subst e
        exact (group_below env (n + 1)).1 l st r cs up up' hp hr he
      · subst e
        rw [parseGroupWhile] at hr
        rw [readNextStartElement_cons hx hp] at hr
        have hn1 : ¬ u.name = "Group" := by
          intro h
          apply hu
          rw [h]
          decide
        have hn2 : ¬ u.name = "Entry" := by
          intro h
          apply hu
          rw [h]
          decide
        simp only [hn1, hn2, if_false] at hr
        rw [parseGroupField_skip env l.group hu, endElement_setPending_self] at hr
        have k := (group_below env n).1 l (st.setPending (cs :: up)) r cs up up' rfl hr he
        rw [setPending_setPending] at k
        exact (group_fuel_succ env n).1 _ _ _ k
      · subst e1 e2
        rw [parseGroupWhile] at hr ⊢
        rw [readNextStartElement_cons hx hp] at hr
        rw [@readNextStartElement_cons (st.setPending ((x :: rest) :: up')) _ _ _ hx rfl,
          setPending_setPending]
        simp only [(inserted_head hI).1] at hr ⊢
        by_cases hname : x.name = "Group"
        · simp only [hname, if_true] at hr ⊢
          cases hh : parseGroup env n (st.setPending (y.children :: rest' :: up)) with
          | none =>
            rw [hh] at hr
            cases hr
          | some w =>
            rw [hh] at hr
            simp only at hr
            have he2 : w.2.hasError = false :=
              hasError_false_of_stable (fun h => st_aux.1 _ _ r h hr) he
            have k := ihG _ w x.children y.children (rest' :: up) (rest :: up') rfl
              (inserted_kids hI "Group" hname (by decide)) hh he2
            rw [setPending_setPending] at k
            rw [k]
            simp only
            have hp2 := (group_sync env n).2 _ w y.children (rest' :: up) rfl hh he2
            exact ihW _ _ r rest rest' up up' hp2 hl2 hr he
        · simp only [hname, if_false] at hr ⊢
          by_cases hname2 : x.name = "Entry"
          · simp only [hname2, if_true] at hr ⊢
            cases hh : parseEntry env n false (st.setPending (y.children :: rest' :: up)) with
            | none =>
              rw [hh] at hr
              cases hr
            | some w =>
              rw [hh] at hr
              simp only at hr
              have he2 : w.2.hasError = false :=
                hasError_false_of_stable (fun h => st_aux.1 _ _ r h hr) he
              have k := (entry_removed env u n).2.1 false _ w x.children y.children (rest' :: up)
                (rest :: up') rfl (inserted_kids hI "Entry" hname2 (by decide)) hh he2
              rw [setPending_setPending] at k
              rw [k]
              simp only
              have hp2 := (entry_sync env n).2.1 false _ w y.children (rest' :: up) rfl hh he2
              exact ihW _ _ r rest rest' up up' hp2 hl2 hr he
          · simp only [hname2, if_false] at hr ⊢
            have e := parseGroupField_ins env l.group hI
              (st.setPending (x.children :: rest :: up')) (y.children :: rest' :: up)
            rw [setPending_setPending] at e
            rw [e] at hr
            simp only [endElement_setPending_cons] at hr
            have hp2 : (parseGroupField env l.group x
                (st.setPending (x.children :: rest :: up'))).endElement.pending
                = rest :: up' :=
              endElement_pending (c := x.children)
                ((parseGroupField_pending env l.group x _).trans rfl)
            have k := ihW _ _ r rest rest' up up' rfl hl2 hr he
            rw [setPending_setPending, setPending_of_pending hp2] at k
            exact k
    · intro st r cs ds up up' hp hl hr he
      rw [parseGroup] at hr ⊢
      simp only [newGroup_setPending, updGroup_setPending] at hr ⊢
      cases hw : parseGroupWhile env n ⟨st.newGroup.1, [], []⟩
          (st.newGroup.2.updGroup st.newGroup.1
            (fun g => { g with m_updateTimeinfo := false })) with
      | none =>
        rw [hw] at hr
        cases hr
      | some w =>
        rw [hw] at hr
        cases hr
        have he3 : w.2.hasError = false :=
          hasError_false_of_stable
            (fun h => parseGroupFinish_stable stable_hasError h) he
        have k := ihW _ _ w cs ds up up' (by simpa [Reader.newGroup] using hp) hl hw he3
        rw [k]
        simp only
        rw [parseGroupFinish_setPending]

/-- A `Root` element with one more child element, in it or below it, whose name
the loop of its parent element does not test for: when it is read without error,
the element without that child gives the same result. -/
theorem parseRootWhile_removed (env : Env) (u : XmlElement) (n : Nat) :
    ∀ l st r cs ds up up', st.pending = ds :: up →
      InsertedList recognizedBy u false (recognizedBy "Root") cs ds →
      parseRootWhile env n l st = some r → r.2.hasError = false →
      parseRootWhile env n l (st.setPending (cs :: up'))
        = some (r.1, r.2.setPending up') := by
  induction n with
  | zero => simp [parseRootWhile]
  | succ n ih =>
    intro l st r cs ds up up' hp hl hr he
    have st_aux := parseRootWhile_stable stable_hasError env n
    have hst : st.hasError = false :=
      hasError_false_of_stable
        (fun h => parseRootWhile_stable stable_hasError env (n + 1) l st r h hr) he
    have hx := xmlError_false_of_hasError hst
    rcases insertedList_cases hl with e | ⟨hu, e⟩ | ⟨x, y, rest, rest', e1, e2, hI, hl2⟩
    · subst e
      exact parseRootWhile_below env (n + 1) l st r cs up up' hp hr he
    · subst e
      rw [parseRootWhile] at hr
      rw [readNextStartElement_cons hx hp] at hr
      have hn1 : ¬ u.name = "Group" := by
        intro h
        apply hu
        rw [h]
        decide
      have hn2 : ¬ u.name = "DeletedObjects" := by
        intro h
        apply hu
        rw [h]
        decide
      simp only [hn1, hn2, if_false] at hr
      rw [skipCurrentElement_setPending_cons] at hr
      have k := parseRootWhile_below env n l (st.setPending (cs :: up)) r cs up up' rfl hr he
      rw [setPending_setPending] at k
      exact parseRootWhile_fuel_succ env n _ _ _ k
    · subst e1 e2
      rw [parseRootWhile] at hr ⊢
      rw [readNextStartElement_cons hx hp] at hr
      rw [@readNextStartElement_cons (st.setPending ((x :: rest) :: up')) _ _ _ hx rfl,
        setPending_setPending]
      simp only [(inserted_head hI).1] at hr ⊢
      by_cases hname : x.name = "Group"
      · simp only [hname, if_true] at hr ⊢
        cases hf : l.groupElementFound with
        | true =>
          exfalso
          simp only [hf, if_true] at hr
          have := st_aux _ _ r (hasError_raiseError _ _) hr
          rw [he] at this
          cases this
        | false =>
          simp only [hf, Bool.false_eq_true, if_false] at hr ⊢
          cases hh : parseGroup env n (st.setPending (y.children :: rest' :: up)) with
          | none =>
            rw [hh] at hr
            cases hr
          | some w =>
            rw [hh] at hr
            simp only at hr
            have he4 : ((w.2.setRootGroup w.1).deleteGroup w.2.rootGroup).hasError = false :=
              hasError_false_of_stable (fun h => st_aux _ _ r h hr) he
            have he2 : w.2.hasError = false := by
              simpa [Reader.hasError, Reader.deleteGroup, Reader.setRootGroup] using he4
            have k := (group_removed env u n).2 _ w x.children y.children (rest' :: up)
              (rest :: up') rfl (inserted_kids hI "Group" hname (by decide)) hh he2
            rw [setPending_setPending] at k
            rw [k]
            simp only
            have hp2 := (group_sync env n).2 _ w y.children (rest' :: up) rfl hh he2
            rw [rootSwap_setPending]
            exact ih _ _ r rest rest' up up' ((rootSwap_pending w.2 w.1).trans hp2) hl2 hr he
      · simp only [hname, if_false] at hr ⊢
        by_cases hname2 : x.name = "DeletedObjects"
        · simp only [hname2, if_true] at hr ⊢
          have e := parseDeletedObjects_ins env hI hname2
            (st.setPending (x.children :: rest :: up')) (y.children :: rest' :: up)
          rw [setPending_setPending] at e
          rw [e] at hr
          simp only [endElement_setPending_cons] at hr
          have hp2 : (parseDeletedObjects env x
              (st.setPending (x.children :: rest :: up'))).endElement.pending = rest :: up' :=
            endElement_pending (c := x.children)
              ((parseDeletedObjects_pending env x _).trans rfl)
          have k := ih _ _ r rest rest' up up' rfl hl2 hr he
          rw [setPending_setPending, setPending_of_pending hp2] at k
          exact k
        · simp only [hname2, if_false] at hr ⊢
          rw [skipCurrentElement_setPending_cons] at hr ⊢
          have k := ih l (st.setPending (rest' :: up)) r rest rest' up up' rfl hl2 hr he
          rw [setPending_setPending] at k
          exact k

/-- The function `parseRoot` on a `Root` element with one more child element, in
it or below it, whose name the loop of its parent element does not test for:
when it ends without error, the element without that child gives the same
result. -/
theorem parseRoot_removed (env : Env) (u : XmlElement) (n : Nat) (st : Reader)
    (r : Bool × Reader) (cs ds : List XmlElement) (up up' : List (List XmlElement))
    (hp : st.pending = ds :: up)
    (hl : InsertedList recognizedBy u false (recognizedBy "Root") cs ds)
    (hr : parseRoot env n st = some r) (he : r.2.hasError = false) :
    parseRoot env n (st.setPending (cs :: up')) = some (r.1, r.2.setPending up') := by
  cases n with
  | zero => simp [parseRoot] at hr
  | succ n =>
    rw [parseRoot] at hr ⊢
    cases hw : parseRootWhile env n ⟨false, false⟩ st with
    | none =>
      rw [hw] at hr
      cases hr
    | some w =>
      rw [hw] at hr
      cases hr
      rw [parseRootWhile_removed env u n _ st w cs ds up up' hp hl hw he]

/-- The document element with one more child element, in it or below it, whose
name the loop of its parent element does not test for: when it is read without
error and with the flag of success, the element without that child gives the
same result. -/
theorem parseKeePassFileWhile_removed (env : Env) (u : XmlElement) (n : Nat) :
    ∀ l st r cs ds up up', st.pending = ds :: up →
      InsertedList recognizedBy u false (recognizedBy "KeePassFile") cs ds →
      parseKeePassFileWhile env n l st = some r → r.2.hasError = false →
      r.1.rootParsedSuccessfully = true →
      parseKeePassFileWhile env n l (st.setPending (cs :: up'))
        = some (r.1, r.2.setPending up') := by
  induction n with
  | zero => simp [parseKeePassFileWhile]
  | succ n ih =>
    intro l st r cs ds up up' hp hl hr he hf
    have st_aux := parseKeePassFileWhile_stable stable_hasError env n
    have hst : st.hasError = false :=
      hasError_false_of_stable
        (fun h => parseKeePassFileWhile_stable stable_hasError env (n + 1) l st r h hr) he
    have hx := xmlError_false_of_hasError hst
    rcases insertedList_cases hl with e | ⟨hu, e⟩ | ⟨x, y, rest, rest', e1, e2, hI, hl2⟩
    · subst e
      exact parseKeePassFileWhile_below env (n + 1) l st r cs up up' hp hr he hf
    · subst e
      rw [parseKeePassFileWhile] at hr
      rw [readNextStartElement_cons hx hp] at hr
      have hn1 : ¬ u.name = "Meta" := by
        intro h
        apply hu
        rw [h]
        decide
      have hn2 : ¬ u.name = "Root" := by
        intro h
        apply hu
        rw [h]
        decide
      simp only [hn1, hn2, if_false] at hr
      rw [skipCurrentElement_setPending_cons] at hr
      have k := parseKeePassFileWhile_below env n l (st.setPending (cs :: up)) r cs up up' rfl
        hr he hf
      rw [setPending_setPending] at k
      exact parseKeePassFileWhile_fuel_succ env n _ _ _ k
    · subst e1 e2
      rw [parseKeePassFileWhile] at hr ⊢
      rw [readNextStartElement_cons hx hp] at hr
      rw [@readNextStartElement_cons (st.setPending ((x :: rest) :: up')) _ _ _ hx rfl,
        setPending_setPending]
      simp only [(inserted_head hI).1] at hr ⊢
      by_cases hname : x.name = "Meta"
      · simp only [hname, if_true] at hr ⊢
        have e := parseMeta_ins env hI hname
          (st.setPending (x.children :: rest :: up')) (y.children :: rest' :: up)
        rw [setPending_setPending] at e
        rw [e] at hr
        simp only [endElement_setPending_cons] at hr
        have hp2 : (parseMeta env x
            (st.setPending (x.children :: rest :: up'))).endElement.pending = rest :: up' :=
          endElement_pending (c := x.children) ((parseMeta_pending env x _).trans rfl)
        have k := ih _ _ r rest rest' up up' rfl hl2 hr he hf
        rw [setPending_setPending, setPending_of_pending hp2] at k
        exact k
      · simp only [hname, if_false] at hr ⊢
        by_cases hname2 : x.name = "Root"
        · simp only [hname2, if_true] at hr ⊢
          cases hfound : l.rootElementFound with
          | true =>
            exfalso
            simp only [hfound, if_true] at hr
            have := parseKeePassFileWhile_flag env n _ _ r hr rfl rfl
            rw [hf] at this
            cases this
          | false =>
            simp only [hfound, Bool.false_eq_true, if_false] at hr ⊢
            cases hh : parseRoot env n (st.setPending (y.children :: rest' :: up)) with
            | none =>
              rw [hh] at hr
              cases hr
            | some w =>
              rw [hh] at hr
              simp only at hr
              have he2 : w.2.hasError = false :=
                hasError_false_of_stable (fun h => st_aux _ _ r h hr) he
              have k := parseRoot_removed env u n _ w x.children y.children (rest' :: up)
                (rest :: up') rfl (inserted_kids hI "Root" hname2 (by decide)) hh he2
              rw [setPending_setPending] at k
              rw [k]
              simp only
              have hp2 := parseRoot_sync env n _ w y.children (rest' :: up) rfl hh he2
              exact ih _ _ r rest rest' up up' hp2 hl2 hr he hf
        · simp only [hname2, if_false] at hr ⊢
          rw [skipCurrentElement_setPending_cons] at hr ⊢
          have k := ih l (st.setPending (rest' :: up)) r rest rest' up up' rfl hl2 hr he hf
          rw [setPending_setPending] at k
          exact k

/-- The function `parseKeePassFile` on a document element with one more child
element, in it or below it, whose name the loop of its parent element does not
test for: when it ends without error and with success, the element without that
child gives the same result. -/
theorem parseKeePassFile_removed (env : Env) (u : XmlElement) (n : Nat) (st : Reader)
    (r : Bool × Reader) (cs ds : List XmlElement) (up up' : List (List XmlElement))
    (hp : st.pending = ds :: up)
    (hl : InsertedList recognizedBy u false (recognizedBy "KeePassFile") cs ds)
    (hr : parseKeePassFile env n st = some r) (he : r.2.hasError = false)
    (hf : r.1 = true) :
    parseKeePassFile env n (st.setPending (cs :: up'))
      = some (r.1, r.2.setPending up') ∧ r.2.pending = up := by
  cases n with
  | zero => simp [parseKeePassFile] at hr
  | succ n =>
    rw [parseKeePassFile] at hr ⊢
    cases hw : parseKeePassFileWhile env n ⟨false, false⟩ st with
    | none =>
      rw [hw] at hr
      cases hr
    | some w =>
      rw [hw] at hr
      cases hr
      rw [parseKeePassFileWhile_removed env u n _ st w cs ds up up' hp hl hw he hf]
      exact ⟨rfl, (parseKeePassFileWhile_sync env n _ st w ds up hp hw he hf).1⟩

/-- The decode of a document with one more element whose name the loop of its
parent element does not test for: when it ends without error, it is the decode
of the document without that element. -/
theorem readDatabaseFuel_removed (env : Env) (fuel : Nat) (strictMode : Bool)
    (binaryPool : List (String × QByteArray)) (randomStream : Option QByteArray)
    {u doc doc' : XmlElement} (hI : Inserted recognizedBy u false doc doc') (r : Reader)
    (h : readDatabaseFuel env fuel strictMode binaryPool randomStream doc' = some r)
    (he : r.hasError = false) :
    readDatabaseFuel env fuel strictMode binaryPool randomStream doc = some r := by
  unfold readDatabaseFuel at h ⊢
  have hx0 : (Reader.start strictMode binaryPool randomStream doc').xmlError = false := rfl
  have hp0 : (Reader.start strictMode binaryPool randomStream doc').pending
      = (doc' :: []) :: [] := rfl
  have hs : Reader.start strictMode binaryPool randomStream doc
      = (Reader.start strictMode binaryPool randomStream doc').setPending ((doc :: []) :: []) :=
    rfl
  rw [hs]
  generalize Reader.start strictMode binaryPool randomStream doc' = s0 at h hx0 hp0 ⊢
  have hx1 : (s0.setPending ((doc :: []) :: [])).xmlError = false := hx0
  have hp1 : (s0.setPending ((doc :: []) :: [])).pending = (doc :: []) :: [] := rfl
  rw [readNextStartElement_cons hx0 hp0] at h
  replace h : (if doc'.name = "KeePassFile" then
      (match parseKeePassFile env fuel (s0.setPending (doc'.children :: [] :: [])) with
        | none => none
        | some (rootGroupParsed, st2) => some (readDatabaseFinish env rootGroupParsed st2))
      else some (readDatabaseFinish env false (s0.setPending (doc'.children :: [] :: []))))
      = some r := h
  rw [readNextStartElement_cons hx1 hp1, setPending_setPending]
  rw [(inserted_head hI).1] at h
  by_cases hname : doc.name = "KeePassFile"
  · rw [if_pos hname] at h
    simp only [hname, if_true]
    cases hh : parseKeePassFile env fuel (s0.setPending (doc'.children :: [] :: [])) with
    | none =>
      rw [hh] at h
      cases h
    | some w =>
      rw [hh] at h
      simp only [Option.some.injEq] at h
      rw [← h] at he
      obtain ⟨hok, hw⟩ := readDatabaseFinish_noError env w.1 w.2 he
      obtain ⟨k, hp2⟩ := parseKeePassFile_removed env u fuel
        (s0.setPending (doc'.children :: [] :: [])) w doc.children doc'.children ([] :: [])
        ([] :: []) rfl (inserted_kids hI "KeePassFile" hname (by decide)) hh hw hok
      rw [setPending_setPending] at k
      rw [k]
      simp only
      rw [← hp2, setPending_self, h]
  · exfalso
    rw [if_neg hname] at h
    simp only [Option.some.injEq] at h
    rw [← h] at he
    have := (readDatabaseFinish_noError env false _ he).1
    cases this

/-- The decode of a document with one more element whose name the loop of its
parent element does not test for: when it ends without error, it is the decode
of the document without that element. -/
theorem readDatabase_removed (env : Env) (strictMode : Bool)
    (binaryPool : List (String × QByteArray)) (randomStream : Option QByteArray)
    {u doc doc' : XmlElement} (hI : Inserted recognizedBy u false doc doc') (r : Reader)
    (h : readDatabase env strictMode binaryPool randomStream doc' = some r)
    (he : r.hasError = false) :
    readDatabase env strictMode binaryPool randomStream doc = some r := by
  obtain ⟨r0, hr0⟩ := readDatabase_total env strictMode binaryPool randomStream doc
  unfold readDatabase at h hr0
  have hq := readDatabaseFuel_removed env _ strictMode binaryPool randomStream hI r h he
  have e1 := readDatabaseFuel_fuel_le env _ (max (4 * doc.size + 2) (4 * doc'.size + 2))
    _ _ _ _ _ hq (Nat.le_max_right _ _)
  have e2 := readDatabaseFuel_fuel_le env _ (max (4 * doc.size + 2) (4 * doc'.size + 2))
    _ _ _ _ _ hr0 (Nat.le_max_left _ _)
  rw [e1] at e2
  simp only [Option.some.injEq] at e2
  unfold readDatabase
  rw [hr0, e2]

/-! ### Claim C26 -/

/-- An element added at the end of an admitted path is an insertion. -/
theorem inserted_of_admits (T : String → List String) (u : XmlElement) (p : List Nat) :
    ∀ (b : Bool) (x : XmlElement), XmlElement.admits T u b p x = true →
      Inserted T u b x (XmlElement.insertAt u p x) := by
  induction p with
  | nil =>
    intro b x _
    exact Inserted.refl b x
  | cons i rest ih =>
    intro b x h
    cases rest with
    | nil =>
      obtain ⟨n, a, t, cs⟩ := x
      have h1 : n ∈ containerNames := by
        simp only [XmlElement.admits, Bool.and_eq_true, decide_eq_true_eq] at h
        exact h.1.1
      have h2 : u.name ∉ T n := by
        simp only [XmlElement.admits, Bool.and_eq_true, decide_eq_true_eq] at h
        exact h.1.2
      have h3 : b = true → n ≠ "Binary" := by
        intro hb hn
        subst hb hn
        simp [XmlElement.admits, XmlElement.name] at h
      have key := Inserted.here (T := T) (u := u) b n a t (cs.take i) (cs.drop i) h1 h2 h3
      rw [List.take_append_drop] at key
      exact key
    | cons j rest2 =>
      obtain ⟨n, a, t, cs⟩ := x
      unfold XmlElement.insertAt
      unfold XmlElement.admits at h
      simp only [XmlElement.children] at h ⊢
      cases hd : cs.drop i with
      | nil => exact Inserted.refl b _
      | cons c post =>
        rw [hd] at h
        simp only at h ⊢
        have key := Inserted.inside (T := T) (u := u) b n a t (cs.take i) c
          (XmlElement.insertAt u (j :: rest2) c) post (ih _ c h)
        rw [← hd, List.take_append_drop] at key
        exact key

/-- The loop of `parseKeePassFile` passes over a child element whose name it does
not test for. -/
theorem parseKeePassFileWhile_skip (env : Env) (fuel : Nat) (l : FileLocals) (st : Reader)
    (u : XmlElement) (cs : List XmlElement) (up : List (List XmlElement))
    (hx : st.xmlError = false) (hp : st.pending = (u :: cs) :: up)
    (hu : u.name ∉ recognizedBy "KeePassFile") :
    parseKeePassFileWhile env (fuel + 1) l st
      = parseKeePassFileWhile env fuel l (st.setPending (cs :: up)) := by
  have hn1 : ¬ u.name = "Meta" := by
    intro h
    apply hu
    rw [h]
    decide
  have hn2 : ¬ u.name = "Root" := by
    intro h
    apply hu
    rw [h]
    decide
  rw [parseKeePassFileWhile, readNextStartElement_cons hx hp]
  simp only [hn1, hn2, if_false]
  rw [skipCurrentElement_setPending_cons]

/-- The loop of `parseRoot` passes over a child element whose name it does not
test for. -/
theorem parseRootWhile_skip (env : Env) (fuel : Nat) (l : RootLocals) (st : Reader)
    (u : XmlElement) (cs : List XmlElement) (up : List (List XmlElement))
    (hx : st.xmlError = false) (hp : st.pending = (u :: cs) :: up)
    (hu : u.name ∉ recognizedBy "Root") :
    parseRootWhile env (fuel + 1) l st = parseRootWhile env fuel l (st.setPending (cs :: up)) := by
  have hn1 : ¬ u.name = "Group" := by
    intro h
    apply hu
    rw [h]
    decide
  have hn2 : ¬ u.name = "DeletedObjects" := by
    intro h
    apply hu
    rw [h]
    decide
  rw [parseRootWhile, readNextStartElement_cons hx hp]
  simp only [hn1, hn2, if_false]
  rw [skipCurrentElement_setPending_cons]

/-- The loop of `parseGroup` passes over a child element whose name it does not
test for. -/
theorem parseGroupWhile_skip (env : Env) (fuel : Nat) (l : GroupLocals) (st : Reader)
    (u : XmlElement) (cs : List XmlElement) (up : List (List XmlElement))
    (hx : st.xmlError = false) (hp : st.pending = (u :: cs) :: up)
    (hu : u.name ∉ recognizedBy "Group") :
    parseGroupWhile env (fuel + 1) l st
      = parseGroupWhile env fuel l (st.setPending (cs :: up)) := by
  have hn1 : ¬ u.name = "Group" := by
    intro h
    apply hu
    rw [h]
    decide
  have hn2 : ¬ u.name = "Entry" := by
    intro h
    apply hu
    rw [h]
    decide
  rw [parseGroupWhile, readNextStartElement_cons hx hp]
  simp only [hn1, hn2, if_false]
  rw [parseGroupField_skip env l.group hu, endElement_setPending_self]

/-- The loop of `parseEntry` passes over a child element whose name it does not
test for. -/
theorem parseEntryWhile_skip (env : Env) (fuel : Nat) (history : Bool) (l : EntryLocals)
    (st : Reader) (u : XmlElement) (cs : List XmlElement) (up : List (List XmlElement))
    (hx : st.xmlError = false) (hp : st.pending = (u :: cs) :: up)
    (hu : u.name ∉ recognizedBy "Entry") :
    parseEntryWhile env (fuel + 1) history l st
      = parseEntryWhile env fuel history l (st.setPending (cs :: up)) := by
  have hn1 : ¬ u.name = "History" := by
    intro h
    apply hu
    rw [h]
    decide
  rw [parseEntryWhile, readNextStartElement_cons hx hp]
  simp only [hn1, if_false]
  rw [parseEntryField_skip env l.entry hu, endElement_setPending_self]

/-- The loop of `parseEntryHistory` passes over a child element whose name it
does not test for. -/
theorem parseEntryHistoryWhile_skip (env : Env) (fuel : Nat) (items : List Nat) (st : Reader)
    (u : XmlElement) (cs : List XmlElement) (up : List (List XmlElement))
    (hx : st.xmlError = false) (hp : st.pending = (u :: cs) :: up)
    (hu : u.name ∉ recognizedBy "History") :
    parseEntryHistoryWhile env (fuel + 1) items st
      = parseEntryHistoryWhile env fuel items (st.setPending (cs :: up)) := by
  have hn1 : ¬ u.name = "Entry" := by
    intro h
    apply hu
    rw [h]
    decide
  rw [parseEntryHistoryWhile, readNextStartElement_cons hx hp]
  simp only [hn1, if_false]
  rw [skipCurrentElement_setPending_cons]

/-- Two states that differ in the cursor only agree in what a decode
delivers. -/
theorem sameDecode_setPending (r : Reader) (q : List (List XmlElement)) :
    r.sameDecode (r.setPending q) = true := by
  simp [Reader.sameDecode]

/-- The error flag of the decode of a document and of the document with one more
element whose name the loop of its parent element does not test for. -/
theorem readDatabase_local_flag (env : Env) (strictMode : Bool)
    (binaryPool : List (String × QByteArray)) (randomStream : Option QByteArray)
    {u doc doc' : XmlElement} (hI : Inserted recognizedBy u false doc doc') :
    ∃ r r', readDatabase env strictMode binaryPool randomStream doc = some r ∧
      readDatabase env strictMode binaryPool randomStream doc' = some r' ∧
      r'.hasError = r.hasError ∧ (r.hasError = false → r' = r) := by
  obtain ⟨r, hr⟩ := readDatabase_total env strictMode binaryPool randomStream doc
  obtain ⟨r', hr'⟩ := readDatabase_total env strictMode binaryPool randomStream doc'
  have key : r.hasError = false → r' = r := by
    intro he
    have := readDatabase_local env strictMode binaryPool randomStream hI r hr he
    rw [hr'] at this
    exact Option.some.inj this
  refine ⟨r, r', hr, hr', ?_, key⟩
  cases he : r.hasError with
  | false => rw [key he, he]
  | true =>
    cases he' : r'.hasError with
    | true => rfl
    | false =>
      have := readDatabase_removed env strictMode binaryPool randomStream hI r' hr' he'
      rw [hr] at this
      rw [Option.some.inj this] at he
      rw [he] at he'
      cases he'

/-- The Strict decode of `Sample.docContainers` without an added element ends
without error and without a dereference of a null `m_randomStream`. -/
theorem docContainers_noError :
    (readDatabase Env.sample true [] none
        (Sample.docContainers 0 (Sample.stranger "Unknown"))).map
      (fun r => (r.hasError, r.nullDeref)) = some (false, false) := by
  decide!

/-- In Strict mode the element `Sample.stranger "Unknown"` added to any of the
containers of `Sample.docContainers` gives the same decode. -/
theorem docContainers_strict_same :
    ∀ k ∈ List.range 20,
      sameResult
        (readDatabase Env.sample true [] none
          (Sample.docContainers 0 (Sample.stranger "Unknown")))
        (readDatabase Env.sample true [] none
          (Sample.docContainers k (Sample.stranger "Unknown"))) = true := by
  decide!

/-- In Lenient mode the element `Sample.stranger "Unknown"` added to any of the
containers of `Sample.docContainers` gives the same decode. -/
theorem docContainers_lenient_same :
    ∀ k ∈ List.range 20,
      sameResult
        (readDatabase Env.sample false [] none
          (Sample.docContainers 0 (Sample.stranger "Unknown")))
        (readDatabase Env.sample false [] none
          (Sample.docContainers k (Sample.stranger "Unknown"))) = true := by
  decide!

/-- An element with a name of `streamNames` added to one of the five containers
read from the cursor gives the same Strict decode of `Sample.docContainers`,
unless the loop of that container tests for the name. -/
theorem docContainers_stream_same :
    ∀ p ∈ [(1, "KeePassFile"), (7, "Root"), (9, "Group"), (10, "Entry"), (16, "History")],
      ∀ n ∈ streamNames, n ∈ recognizedBy p.2 ∨
        sameResult
          (readDatabase Env.sample true [] none (Sample.docContainers 0 (Sample.stranger n)))
          (readDatabase Env.sample true [] none (Sample.docContainers p.1 (Sample.stranger n)))
          = true := by
  decide!

theorem Reader.deleteGroup_ref {P : Reader → Prop} (hP : RefLeaf P) {st : Reader} {p : Nat}
    (h : P st) : P (st.deleteGroup p) := by
  unfold Reader.deleteGroup
  repeat' (first
    | assumption
    | with_reducible apply stable_ite
    | with_reducible apply stable_ite_snd
    | with_reducible apply hP.setLastTopVisibleEntry
    | with_reducible apply hP.setRecycleBin
    | with_reducible apply hP.setEntryTemplatesGroup
    | with_reducible apply hP.setLastSelectedGroup
    | with_reducible apply hP.setLastTopVisibleGroup
    | exact fun _ => rfl
    | with_reducible apply hP.updGroup
    | with_reducible apply hP.updEntry
    | with_reducible apply hP.raiseError
    | with_reducible apply hP.setMeta
    | with_reducible apply hP.getGroup
    | with_reducible apply hP.getEntry
    | with_reducible apply hP.randomUuid
    | with_reducible apply hP.cipherProcess
    | with_reducible apply hP.setNullDeref
    | with_reducible apply hP.setXmlError
    | with_reducible apply hP.setHeaderHash
    | with_reducible apply hP.setBinaryPool
    | with_reducible apply hP.addDeletedObject
    | refine snd_of_eq (by assumption) (hP.getGroup _ _ ?_)
    | refine snd_of_eq (by assumption) (hP.getEntry _ _ ?_)
    | refine snd_of_eq (by assumption) (hP.cipherProcess _ _ _ _ ?_)
    | refine snd_of_eq (by assumption) (hP.randomUuid _ _ ?_)
    | dsimp only
    | split)

theorem Reader.deleteEntry_ref {P : Reader → Prop} (hP : RefLeaf P) {st : Reader} {p : Nat}
    (h : P st) : P (st.deleteEntry p) := by
  unfold Reader.deleteEntry
  repeat' (first
    | assumption
    | with_reducible apply stable_ite
    | with_reducible apply stable_ite_snd
    | with_reducible apply hP.setLastTopVisibleEntry
    | with_reducible apply hP.setRecycleBin
    | with_reducible apply hP.setEntryTemplatesGroup
    | with_reducible apply hP.setLastSelectedGroup
    | with_reducible apply hP.setLastTopVisibleGroup
    | exact fun _ => rfl
    | with_reducible apply hP.updGroup
    | with_reducible apply hP.updEntry
    | with_reducible apply hP.raiseError
    | with_reducible apply hP.setMeta
    | with_reducible apply hP.getGroup
    | with_reducible apply hP.getEntry
    | with_reducible apply hP.randomUuid
    | with_reducible apply hP.cipherProcess
    | with_reducible apply hP.setNullDeref
    | with_reducible apply hP.setXmlError
    | with_reducible apply hP.setHeaderHash
    | with_reducible apply hP.setBinaryPool
    | with_reducible apply hP.addDeletedObject
    | refine snd_of_eq (by assumption) (hP.getGroup _ _ ?_)
    | refine snd_of_eq (by assumption) (hP.getEntry _ _ ?_)
    | refine snd_of_eq (by assumption) (hP.cipherProcess _ _ _ _ ?_)
    | refine snd_of_eq (by assumption) (hP.randomUuid _ _ ?_)
    | dsimp only
    | split)

theorem readString_ref {P : Reader → Prop} (hP : RefLeaf P) {x : XmlElement} {st : Reader}
    (h : P st) : P ((readString x st).2) := by
  unfold readString
  repeat' (first
    | assumption
    | with_reducible apply stable_ite
    | with_reducible apply stable_ite_snd
    | with_reducible apply hP.setLastTopVisibleEntry
    | with_reducible apply hP.setRecycleBin
    | with_reducible apply hP.setEntryTemplatesGroup
    | with_reducible apply hP.setLastSelectedGroup
    | with_reducible apply hP.setLastTopVisibleGroup
    | exact fun _ => rfl
    | with_reducible apply hP.updGroup
    | with_reducible apply hP.updEntry
    | with_reducible apply hP.raiseError
    | with_reducible apply hP.setMeta
    | with_reducible apply hP.getGroup
    | with_reducible apply hP.getEntry
    | with_reducible apply hP.randomUuid
    | with_reducible apply hP.cipherProcess
    | with_reducible apply hP.setNullDeref
    | with_reducible apply hP.setXmlError
    | with_reducible apply hP.setHeaderHash
    | with_reducible apply hP.setBinaryPool
    | with_reducible apply hP.addDeletedObject
    | refine snd_of_eq (by assumption) (hP.getGroup _ _ ?_)
    | refine snd_of_eq (by assumption) (hP.getEntry _ _ ?_)
    | refine snd_of_eq (by assumption) (hP.cipherProcess _ _ _ _ ?_)
    | refine snd_of_eq (by assumption) (hP.randomUuid _ _ ?_)
    | dsimp only
    | split)

theorem readBool_ref {P : Reader → Prop} (hP : RefLeaf P) {x : XmlElement} {st : Reader}
    (h : P st) : P ((readBool x st).2) := by
  unfold readBool
  repeat' (first
    | assumption
    | with_reducible apply stable_ite
    | with_reducible apply stable_ite_snd
    | with_reducible apply hP.setLastTopVisibleEntry
    | with_reducible apply hP.setRecycleBin
    | with_reducible apply hP.setEntryTemplatesGroup
    | with_reducible apply hP.setLastSelectedGroup
    | with_reducible apply hP.setLastTopVisibleGroup
    | exact fun _ => rfl
    | with_reducible apply hP.updGroup
    | with_reducible apply hP.updEntry
    | with_reducible apply hP.raiseError
    | with_reducible apply hP.setMeta
    | with_reducible apply hP.getGroup
    | with_reducible apply hP.getEntry
    | with_reducible apply hP.randomUuid
    | with_reducible apply hP.cipherProcess
    | with_reducible apply hP.setNullDeref
    | with_reducible apply hP.setXmlError
    | with_reducible apply hP.setHeaderHash
    | with_reducible apply hP.setBinaryPool
    | with_reducible apply hP.addDeletedObject
    | with_reducible apply readString_ref hP
    | refine snd_of_eq (by assumption) (readString_ref hP ?_)
    | refine snd_of_eq (by assumption) (hP.getGroup _ _ ?_)
    | refine snd_of_eq (by assumption) (hP.getEntry _ _ ?_)
    | refine snd_of_eq (by assumption) (hP.cipherProcess _ _ _ _ ?_)
    | refine snd_of_eq (by assumption) (hP.randomUuid _ _ ?_)
    | dsimp only
    | split)

theorem readNumber_ref {P : Reader → Prop} (hP : RefLeaf P) {env : Env} {x : XmlElement} {st : Reader}
    (h : P st) : P ((readNumber env x st).2) := by
  unfold readNumber
  repeat' (first
    | assumption
    | with_reducible apply stable_ite
    | with_reducible apply stable_ite_snd
    | with_reducible apply hP.setLastTopVisibleEntry
    | with_reducible apply hP.setRecycleBin
    | with_reducible apply hP.setEntryTemplatesGroup
    | with_reducible apply hP.setLastSelectedGroup
    | with_reducible apply hP.setLastTopVisibleGroup
    | exact fun _ => rfl
    | with_reducible apply hP.updGroup
    | with_reducible apply hP.updEntry
    | with_reducible apply hP.raiseError
    | with_reducible apply hP.setMeta
    | with_reducible apply hP.getGroup
    | with_reducible apply hP.getEntry
    | with_reducible apply hP.randomUuid
    | with_reducible apply hP.cipherProcess
    | with_reducible apply hP.setNullDeref
    | with_reducible apply hP.setXmlError
    | with_reducible apply hP.setHeaderHash
    | with_reducible apply hP.setBinaryPool
    | with_reducible apply hP.addDeletedObject
    | with_reducible apply readString_ref hP
    | refine snd_of_eq (by assumption) (readString_ref hP ?_)
    | refine snd_of_eq (by assumption) (hP.getGroup _ _ ?_)
    | refine snd_of_eq (by assumption) (hP.getEntry _ _ ?_)
    | refine snd_of_eq (by assumption) (hP.cipherProcess _ _ _ _ ?_)
    | refine snd_of_eq (by assumption) (hP.randomUuid _ _ ?_)
    | dsimp only
    | split)

theorem readBinary_ref {P : Reader → Prop} (hP : RefLeaf P) {env : Env} {x : XmlElement} {st : Reader}
    (h : P st) : P ((readBinary env x st).2) := by
  unfold readBinary
  repeat' (first
    | assumption
    | with_reducible apply stable_ite
    | with_reducible apply stable_ite_snd
    | with_reducible apply hP.setLastTopVisibleEntry
    | with_reducible apply hP.setRecycleBin
    | with_reducible apply hP.setEntryTemplatesGroup
    | with_reducible apply hP.setLastSelectedGroup
    | with_reducible apply hP.setLastTopVisibleGroup
    | exact fun _ => rfl
    | with_reducible apply hP.updGroup
    | with_reducible apply hP.updEntry
    | with_reducible apply hP.raiseError
    | with_reducible apply hP.setMeta
    | with_reducible apply hP.getGroup
    | with_reducible apply hP.getEntry
    | with_reducible apply hP.randomUuid
    | with_reducible apply hP.cipherProcess
    | with_reducible apply hP.setNullDeref
    | with_reducible apply hP.setXmlError
    | with_reducible apply hP.setHeaderHash
    | with_reducible apply hP.setBinaryPool
    | with_reducible apply hP.addDeletedObject
    | with_reducible apply readString_ref hP
    | refine snd_of_eq (by assumption) (readString_ref hP ?_)
    | refine snd_of_eq (by assumption) (hP.getGroup _ _ ?_)
    | refine snd_of_eq (by assumption) (hP.getEntry _ _ ?_)
    | refine snd_of_eq (by assumption) (hP.cipherProcess _ _ _ _ ?_)
    | refine snd_of_eq (by assumption) (hP.randomUuid _ _ ?_)
    | dsimp only
    | split)

theorem readUuid_ref {P : Reader → Prop} (hP : RefLeaf P) {env : Env} {x : XmlElement} {st : Reader}
    (h : P st) : P ((readUuid env x st).2) := by
  unfold readUuid
  repeat' (first
    | assumption
    | with_reducible apply stable_ite
    | with_reducible apply stable_ite_snd
    | with_reducible apply hP.setLastTopVisibleEntry
    | with_reducible apply hP.setRecycleBin
    | with_reducible apply hP.setEntryTemplatesGroup
    | with_reducible apply hP.setLastSelectedGroup
    | with_reducible apply hP.setLastTopVisibleGroup
    | exact fun _ => rfl
    | with_reducible apply hP.updGroup
    | with_reducible apply hP.updEntry
    | with_reducible apply hP.raiseError
    | with_reducible apply hP.setMeta
    | with_reducible apply hP.getGroup
    | with_reducible apply hP.getEntry
    | with_reducible apply hP.randomUuid
    | with_reducible apply hP.cipherProcess
    | with_reducible apply hP.setNullDeref
    | with_reducible apply hP.setXmlError
    | with_reducible apply hP.setHeaderHash
    | with_reducible apply hP.setBinaryPool
    | with_reducible apply hP.addDeletedObject
    | with_reducible apply readBinary_ref hP
    | refine snd_of_eq (by assumption) (readBinary_ref hP ?_)
    | refine snd_of_eq (by assumption) (hP.getGroup _ _ ?_)
    | refine snd_of_eq (by assumption) (hP.getEntry _ _ ?_)
    | refine snd_of_eq (by assumption) (hP.cipherProcess _ _ _ _ ?_)
    | refine snd_of_eq (by assumption) (hP.randomUuid _ _ ?_)
    | dsimp only
    | split)

theorem readCompressedBinary_ref {P : Reader → Prop} (hP : RefLeaf P) {env : Env} {x : XmlElement} {st : Reader}
    (h : P st) : P ((readCompressedBinary env x st).2) := by
  unfold readCompressedBinary
  repeat' (first
    | assumption
    | with_reducible apply stable_ite
    | with_reducible apply stable_ite_snd
    | with_reducible apply hP.setLastTopVisibleEntry
    | with_reducible apply hP.setRecycleBin
    | with_reducible apply hP.setEntryTemplatesGroup
    | with_reducible apply hP.setLastSelectedGroup
    | with_reducible apply hP.setLastTopVisibleGroup
    | exact fun _ => rfl
    | with_reducible apply hP.updGroup
    | with_reducible apply hP.updEntry
    | with_reducible apply hP.raiseError
    | with_reducible apply hP.setMeta
    | with_reducible apply hP.getGroup
    | with_reducible apply hP.getEntry
    | with_reducible apply hP.randomUuid
    | with_reducible apply hP.cipherProcess
    | with_reducible apply hP.setNullDeref
    | with_reducible apply hP.setXmlError
    | with_reducible apply hP.setHeaderHash
    | with_reducible apply hP.setBinaryPool
    | with_reducible apply hP.addDeletedObject
    | with_reducible apply readBinary_ref hP
    | refine snd_of_eq (by assumption) (readBinary_ref hP ?_)
    | refine snd_of_eq (by assumption) (hP.getGroup _ _ ?_)
    | refine snd_of_eq (by assumption) (hP.getEntry _ _ ?_)
    | refine snd_of_eq (by assumption) (hP.cipherProcess _ _ _ _ ?_)
    | refine snd_of_eq (by assumption) (hP.randomUuid _ _ ?_)
    | dsimp only
    | split)

theorem readDateTime_ref {P : Reader → Prop} (hP : RefLeaf P) {env : Env} {x : XmlElement} {st : Reader}
    (h : P st) : P ((readDateTime env x st).2) := by
  unfold readDateTime
  repeat' (first
    | assumption
    | with_reducible apply stable_ite
    | with_reducible apply stable_ite_snd
    | with_reducible apply hP.setLastTopVisibleEntry
    | with_reducible apply hP.setRecycleBin
    | with_reducible apply hP.setEntryTemplatesGroup
    | with_reducible apply hP.setLastSelectedGroup
    | with_reducible apply hP.setLastTopVisibleGroup
    | exact fun _ => rfl
    | with_reducible apply hP.updGroup
    | with_reducible apply hP.updEntry
    | with_reducible apply hP.raiseError
    | with_reducible apply hP.setMeta
    | with_reducible apply hP.getGroup
    | with_reducible apply hP.getEntry
    | with_reducible apply hP.randomUuid
    | with_reducible apply hP.cipherProcess
    | with_reducible apply hP.setNullDeref
    | with_reducible apply hP.setXmlError
    | with_reducible apply hP.setHeaderHash
    | with_reducible apply hP.setBinaryPool
    | with_reducible apply hP.addDeletedObject
    | with_reducible apply readString_ref hP
    | refine snd_of_eq (by assumption) (readString_ref hP ?_)
    | refine snd_of_eq (by assumption) (hP.getGroup _ _ ?_)
    | refine snd_of_eq (by assumption) (hP.getEntry _ _ ?_)
    | refine snd_of_eq (by assumption) (hP.cipherProcess _ _ _ _ ?_)
    | refine snd_of_eq (by assumption) (hP.randomUuid _ _ ?_)
    | dsimp only
    | split)

theorem readColor_ref {P : Reader → Prop} (hP : RefLeaf P) {env : Env} {x : XmlElement} {st : Reader}
    (h : P st) : P ((readColor env x st).2) := by
  unfold readColor
  repeat' (first
    | assumption
    | with_reducible apply stable_ite
    | with_reducible apply stable_ite_snd
    | with_reducible apply hP.setLastTopVisibleEntry
    | with_reducible apply hP.setRecycleBin
    | with_reducible apply hP.setEntryTemplatesGroup
    | with_reducible apply hP.setLastSelectedGroup
    | with_reducible apply hP.setLastTopVisibleGroup
    | exact fun _ => rfl
    | with_reducible apply hP.updGroup
    | with_reducible apply hP.updEntry
    | with_reducible apply hP.raiseError
    | with_reducible apply hP.setMeta
    | with_reducible apply hP.getGroup
    | with_reducible apply hP.getEntry
    | with_reducible apply hP.randomUuid
    | with_reducible apply hP.cipherProcess
    | with_reducible apply hP.setNullDeref
    | with_reducible apply hP.setXmlError
    | with_reducible apply hP.setHeaderHash
    | with_reducible apply hP.setBinaryPool
    | with_reducible apply hP.addDeletedObject
    | with_reducible apply readString_ref hP
    | refine snd_of_eq (by assumption) (readString_ref hP ?_)
    | refine snd_of_eq (by assumption) (hP.getGroup _ _ ?_)
    | refine snd_of_eq (by assumption) (hP.getEntry _ _ ?_)
    | refine snd_of_eq (by assumption) (hP.cipherProcess _ _ _ _ ?_)
    | refine snd_of_eq (by assumption) (hP.randomUuid _ _ ?_)
    | dsimp only
    | split)

theorem parseMemoryProtectionChild_ref {P : Reader → Prop} (hP : RefLeaf P) {c : XmlElement} {s : Unit × Reader}
    (h : P s.2) : P ((parseMemoryProtectionChild c s).2) := by
  unfold parseMemoryProtectionChild
  repeat' (first
    | assumption
    | with_reducible apply stable_ite
    | with_reducible apply stable_ite_snd
    | with_reducible apply hP.setLastTopVisibleEntry
    | with_reducible apply hP.setRecycleBin
    | with_reducible apply hP.setEntryTemplatesGroup
    | with_reducible apply hP.setLastSelectedGroup
    | with_reducible apply hP.setLastTopVisibleGroup
    | exact fun _ => rfl
    | with_reducible apply hP.updGroup
    | with_reducible apply hP.updEntry
    | with_reducible apply hP.raiseError
    | with_reducible apply hP.setMeta
    | with_reducible apply hP.getGroup
    | with_reducible apply hP.getEntry
    | with_reducible apply hP.randomUuid
    | with_reducible apply hP.cipherProcess
    | with_reducible apply hP.setNullDeref
    | with_reducible apply hP.setXmlError
    | with_reducible apply hP.setHeaderHash
    | with_reducible apply hP.setBinaryPool
    | with_reducible apply hP.addDeletedObject
    | with_reducible apply readBool_ref hP
    | refine snd_of_eq (by assumption) (readBool_ref hP ?_)
    | refine snd_of_eq (by assumption) (hP.getGroup _ _ ?_)
    | refine snd_of_eq (by assumption) (hP.getEntry _ _ ?_)
    | refine snd_of_eq (by assumption) (hP.cipherProcess _ _ _ _ ?_)
    | refine snd_of_eq (by assumption) (hP.randomUuid _ _ ?_)
    | dsimp only
    | split)

theorem parseMemoryProtection_ref {P : Reader → Prop} (hP : RefLeaf P) {x : XmlElement} {st : Reader}
    (h : P st) : P (parseMemoryProtection x st) := by
  unfold parseMemoryProtection
  repeat' (first
    | assumption
    | with_reducible apply stable_ite
    | with_reducible apply stable_ite_snd
    | with_reducible apply hP.setLastTopVisibleEntry
    | with_reducible apply hP.setRecycleBin
    | with_reducible apply hP.setEntryTemplatesGroup
    | with_reducible apply hP.setLastSelectedGroup
    | with_reducible apply hP.setLastTopVisibleGroup
    | exact forEachChild_stable (fun _ _ hs => parseMemoryProtectionChild_ref hP hs) h
    | exact snd_of_eq (by assumption) (forEachChild_stable (fun _ _ hs => parseMemoryProtectionChild_ref hP hs) h)
    | exact fun _ => rfl
    | with_reducible apply hP.updGroup
    | with_reducible apply hP.updEntry
    | with_reducible apply hP.raiseError
    | with_reducible apply hP.setMeta
    | with_reducible apply hP.getGroup
    | with_reducible apply hP.getEntry
    | with_reducible apply hP.randomUuid
    | with_reducible apply hP.cipherProcess
    | with_reducible apply hP.setNullDeref
    | with_reducible apply hP.setXmlError
    | with_reducible apply hP.setHeaderHash
    | with_reducible apply hP.setBinaryPool
    | with_reducible apply hP.addDeletedObject
    | refine snd_of_eq (by assumption) (hP.getGroup _ _ ?_)
    | refine snd_of_eq (by assumption) (hP.getEntry _ _ ?_)
    | refine snd_of_eq (by assumption) (hP.cipherProcess _ _ _ _ ?_)
    | refine snd_of_eq (by assumption) (hP.randomUuid _ _ ?_)
    | dsimp only
    | split)

theorem parseIconChild_ref {P : Reader → Prop} (hP : RefLeaf P) {env : Env} {c : XmlElement} {s : IconLocals × Reader}
    (h : P s.2) : P ((parseIconChild env c s).2) := by
  unfold parseIconChild
  repeat' (first
    | assumption
    | with_reducible apply stable_ite
    | with_reducible apply stable_ite_snd
    | with_reducible apply hP.setLastTopVisibleEntry
    | with_reducible apply hP.setRecycleBin
    | with_reducible apply hP.setEntryTemplatesGroup
    | with_reducible apply hP.setLastSelectedGroup
    | with_reducible apply hP.setLastTopVisibleGroup
    | exact fun _ => rfl
    | with_reducible apply hP.updGroup
    | with_reducible apply hP.updEntry
    | with_reducible apply hP.raiseError
    | with_reducible apply hP.setMeta
    | with_reducible apply hP.getGroup
    | with_reducible apply hP.getEntry
    | with_reducible apply hP.randomUuid
    | with_reducible apply hP.cipherProcess
    | with_reducible apply hP.setNullDeref
    | with_reducible apply hP.setXmlError
    | with_reducible apply hP.setHeaderHash
    | with_reducible apply hP.setBinaryPool
    | with_reducible apply hP.addDeletedObject
    | with_reducible apply readUuid_ref hP
    | refine snd_of_eq (by assumption) (readUuid_ref hP ?_)
    | with_reducible apply readBinary_ref hP
    | refine snd_of_eq (by assumption) (readBinary_ref hP ?_)
    | refine snd_of_eq (by assumption) (hP.getGroup _ _ ?_)
    | refine snd_of_eq (by assumption) (hP.getEntry _ _ ?_)
    | refine snd_of_eq (by assumption) (hP.cipherProcess _ _ _ _ ?_)
    | refine snd_of_eq (by assumption) (hP.randomUuid _ _ ?_)
    | dsimp only
    | split)

theorem parseIcon_ref {P : Reader → Prop} (hP : RefLeaf P) {env : Env} {x : XmlElement} {st : Reader}
    (h : P st) : P (parseIcon env x st) := by
  unfold parseIcon
  repeat' (first
    | assumption
    | with_reducible apply stable_ite
    | with_reducible apply stable_ite_snd
    | with_reducible apply hP.setLastTopVisibleEntry
    | with_reducible apply hP.setRecycleBin
    | with_reducible apply hP.setEntryTemplatesGroup
    | with_reducible apply hP.setLastSelectedGroup
    | with_reducible apply hP.setLastTopVisibleGroup
    | exact forEachChild_stable (fun _ _ hs => parseIconChild_ref hP hs) h
    | exact snd_of_eq (by assumption) (forEachChild_stable (fun _ _ hs => parseIconChild_ref hP hs) h)
    | exact fun _ => rfl
    | with_reducible apply hP.updGroup
    | with_reducible apply hP.updEntry
    | with_reducible apply hP.raiseError
    | with_reducible apply hP.setMeta
    | with_reducible apply hP.getGroup
    | with_reducible apply hP.getEntry
    | with_reducible apply hP.randomUuid
    | with_reducible apply hP.cipherProcess
    | with_reducible apply hP.setNullDeref
    | with_reducible apply hP.setXmlError
    | with_reducible apply hP.setHeaderHash
    | with_reducible apply hP.setBinaryPool
    | with_reducible apply hP.addDeletedObject
    | refine snd_of_eq (by assumption) (hP.getGroup _ _ ?_)
    | refine snd_of_eq (by assumption) (hP.getEntry _ _ ?_)
    | refine snd_of_eq (by assumption) (hP.cipherProcess _ _ _ _ ?_)
    | refine snd_of_eq (by assumption) (hP.randomUuid _ _ ?_)
    | dsimp only
    | split)

theorem parseCustomIconsChild_ref {P : Reader → Prop} (hP : RefLeaf P) {env : Env} {c : XmlElement} {s : Unit × Reader}
    (h : P s.2) : P ((parseCustomIconsChild env c s).2) := by
  unfold parseCustomIconsChild
  repeat' (first
    | assumption
    | with_reducible apply stable_ite
    | with_reducible apply stable_ite_snd
    | with_reducible apply hP.setLastTopVisibleEntry
    | with_reducible apply hP.setRecycleBin
    | with_reducible apply hP.setEntryTemplatesGroup
    | with_reducible apply hP.setLastSelectedGroup
    | with_reducible apply hP.setLastTopVisibleGroup
    | exact fun _ => rfl
    | with_reducible apply hP.updGroup
    | with_reducible apply hP.updEntry
    | with_reducible apply hP.raiseError
    | with_reducible apply hP.setMeta
    | with_reducible apply hP.getGroup
    | with_reducible apply hP.getEntry
    | with_reducible apply hP.randomUuid
    | with_reducible apply hP.cipherProcess
    | with_reducible apply hP.setNullDeref
    | with_reducible apply hP.setXmlError
    | with_reducible apply hP.setHeaderHash
    | with_reducible apply hP.setBinaryPool
    | with_reducible apply hP.addDeletedObject
    | with_reducible apply parseIcon_ref hP
    | refine snd_of_eq (by assumption) (parseIcon_ref hP ?_)
    | refine snd_of_eq (by assumption) (hP.getGroup _ _ ?_)
    | refine snd_of_eq (by assumption) (hP.getEntry _ _ ?_)
    | refine snd_of_eq (by assumption) (hP.cipherProcess _ _ _ _ ?_)
    | refine snd_of_eq (by assumption) (hP.randomUuid _ _ ?_)
    | dsimp only
    | split)

theorem parseCustomIcons_ref {P : Reader → Prop} (hP : RefLeaf P) {env : Env} {x : XmlElement} {st : Reader}
    (h : P st) : P (parseCustomIcons env x st) := by
  unfold parseCustomIcons
  repeat' (first
    | assumption
    | with_reducible apply stable_ite
    | with_reducible apply stable_ite_snd
    | with_reducible apply hP.setLastTopVisibleEntry
    | with_reducible apply hP.setRecycleBin
    | with_reducible apply hP.setEntryTemplatesGroup
    | with_reducible apply hP.setLastSelectedGroup
    | with_reducible apply hP.setLastTopVisibleGroup
    | exact forEachChild_stable (fun _ _ hs => parseCustomIconsChild_ref hP hs) h
    | exact snd_of_eq (by assumption) (forEachChild_stable (fun _ _ hs => parseCustomIconsChild_ref hP hs) h)
    | exact fun _ => rfl
    | with_reducible apply hP.updGroup
    | with_reducible apply hP.updEntry
    | with_reducible apply hP.raiseError
    | with_reducible apply hP.setMeta
    | with_reducible apply hP.getGroup
    | with_reducible apply hP.getEntry
    | with_reducible apply hP.randomUuid
    | with_reducible apply hP.cipherProcess
    | with_reducible apply hP.setNullDeref
    | with_reducible apply hP.setXmlError
    | with_reducible apply hP.setHeaderHash
    | with_reducible apply hP.setBinaryPool
    | with_reducible apply hP.addDeletedObject
    | refine snd_of_eq (by assumption) (hP.getGroup _ _ ?_)
    | refine snd_of_eq (by assumption) (hP.getEntry _ _ ?_)
    | refine snd_of_eq (by assumption) (hP.cipherProcess _ _ _ _ ?_)
    | refine snd_of_eq (by assumption) (hP.randomUuid _ _ ?_)
    | dsimp only
    | split)

theorem parseBinariesChild_ref {P : Reader → Prop} (hP : RefLeaf P) {env : Env} {c : XmlElement} {s : Unit × Reader}
    (h : P s.2) : P ((parseBinariesChild env c s).2) := by
  unfold parseBinariesChild
  repeat' (first
    | assumption
    | with_reducible apply stable_ite
    | with_reducible apply stable_ite_snd
    | with_reducible apply hP.setLastTopVisibleEntry
    | with_reducible apply hP.setRecycleBin
    | with_reducible apply hP.setEntryTemplatesGroup
    | with_reducible apply hP.setLastSelectedGroup
    | with_reducible apply hP.setLastTopVisibleGroup
    | exact fun _ => rfl
    | with_reducible apply hP.updGroup
    | with_reducible apply hP.updEntry
    | with_reducible apply hP.raiseError
    | with_reducible apply hP.setMeta
    | with_reducible apply hP.getGroup
    | with_reducible apply hP.getEntry
    | with_reducible apply hP.randomUuid
    | with_reducible apply hP.cipherProcess
    | with_reducible apply hP.setNullDeref
    | with_reducible apply hP.setXmlError
    | with_reducible apply hP.setHeaderHash
    | with_reducible apply hP.setBinaryPool
    | with_reducible apply hP.addDeletedObject
    | with_reducible apply readCompressedBinary_ref hP
    | refine snd_of_eq (by assumption) (readCompressedBinary_ref hP ?_)
    | with_reducible apply readBinary_ref hP
    | refine snd_of_eq (by assumption) (readBinary_ref hP ?_)
    | refine snd_of_eq (by assumption) (hP.getGroup _ _ ?_)
    | refine snd_of_eq (by assumption) (hP.getEntry _ _ ?_)
    | refine snd_of_eq (by assumption) (hP.cipherProcess _ _ _ _ ?_)
    | refine snd_of_eq (by assumption) (hP.randomUuid _ _ ?_)
    | dsimp only
    | split)

theorem parseBinaries_ref {P : Reader → Prop} (hP : RefLeaf P) {env : Env} {x : XmlElement} {st : Reader}
    (h : P st) : P (parseBinaries env x st) := by
  unfold parseBinaries
  repeat' (first
    | assumption
    | with_reducible apply stable_ite
    | with_reducible apply stable_ite_snd
    | with_reducible apply hP.setLastTopVisibleEntry
    | with_reducible apply hP.setRecycleBin
    | with_reducible apply hP.setEntryTemplatesGroup
    | with_reducible apply hP.setLastSelectedGroup
    | with_reducible apply hP.setLastTopVisibleGroup
    | exact forEachChild_stable (fun _ _ hs => parseBinariesChild_ref hP hs) h
    | exact snd_of_eq (by assumption) (forEachChild_stable (fun _ _ hs => parseBinariesChild_ref hP hs) h)
    | exact fun _ => rfl
    | with_reducible apply hP.updGroup
    | with_reducible apply hP.updEntry
    | with_reducible apply hP.raiseError
    | with_reducible apply hP.setMeta
    | with_reducible apply hP.getGroup
    | with_reducible apply hP.getEntry
    | with_reducible apply hP.randomUuid
    | with_reducible apply hP.cipherProcess
    | with_reducible apply hP.setNullDeref
    | with_reducible apply hP.setXmlError
    | with_reducible apply hP.setHeaderHash
    | with_reducible apply hP.setBinaryPool
    | with_reducible apply hP.addDeletedObject
    | refine snd_of_eq (by assumption) (hP.getGroup _ _ ?_)
    | refine snd_of_eq (by assumption) (hP.getEntry _ _ ?_)
    | refine snd_of_eq (by assumption) (hP.cipherProcess _ _ _ _ ?_)
    | refine snd_of_eq (by assumption) (hP.randomUuid _ _ ?_)
    | dsimp only
    | split)

theorem parseCustomDataItemChild_ref {P : Reader → Prop} (hP : RefLeaf P) {c : XmlElement} {s : ItemLocals × Reader}
    (h : P s.2) : P ((parseCustomDataItemChild c s).2) := by
  unfold parseCustomDataItemChild
  repeat' (first
    | assumption
    | with_reducible apply stable_ite
    | with_reducible apply stable_ite_snd
    | with_reducible apply hP.setLastTopVisibleEntry
    | with_reducible apply hP.setRecycleBin
    | with_reducible apply hP.setEntryTemplatesGroup
    | with_reducible apply hP.setLastSelectedGroup
    | with_reducible apply hP.setLastTopVisibleGroup
    | exact fun _ => rfl
    | with_reducible apply hP.updGroup
    | with_reducible apply hP.updEntry
    | with_reducible apply hP.raiseError
    | with_reducible apply hP.setMeta
    | with_reducible apply hP.getGroup
    | with_reducible apply hP.getEntry
    | with_reducible apply hP.randomUuid
    | with_reducible apply hP.cipherProcess
    | with_reducible apply hP.setNullDeref
    | with_reducible apply hP.setXmlError
    | with_reducible apply hP.setHeaderHash
    | with_reducible apply hP.setBinaryPool
    | with_reducible apply hP.addDeletedObject
    | with_reducible apply readString_ref hP
    | refine snd_of_eq (by assumption) (readString_ref hP ?_)
    | refine snd_of_eq (by assumption) (hP.getGroup _ _ ?_)
    | refine snd_of_eq (by assumption) (hP.getEntry _ _ ?_)
    | refine snd_of_eq (by assumption) (hP.cipherProcess _ _ _ _ ?_)
    | refine snd_of_eq (by assumption) (hP.randomUuid _ _ ?_)
    | dsimp only
    | split)

theorem parseCustomDataItem_ref {P : Reader → Prop} (hP : RefLeaf P) {x : XmlElement} {st : Reader}
    (h : P st) : P (parseCustomDataItem x st) := by
  unfold parseCustomDataItem
  repeat' (first
    | assumption
    | with_reducible apply stable_ite
    | with_reducible apply stable_ite_snd
    | with_reducible apply hP.setLastTopVisibleEntry
    | with_reducible apply hP.setRecycleBin
    | with_reducible apply hP.setEntryTemplatesGroup
    | with_reducible apply hP.setLastSelectedGroup
    | with_reducible apply hP.setLastTopVisibleGroup
    | exact forEachChild_stable (fun _ _ hs => parseCustomDataItemChild_ref hP hs) h
    | exact snd_of_eq (by assumption) (forEachChild_stable (fun _ _ hs => parseCustomDataItemChild_ref hP hs) h)
    | exact fun _ => rfl
    | with_reducible apply hP.updGroup
    | with_reducible apply hP.updEntry
    | with_reducible apply hP.raiseError
    | with_reducible apply hP.setMeta
    | with_reducible apply hP.getGroup
    | with_reducible apply hP.getEntry
    | with_reducible apply hP.randomUuid
    | with_reducible apply hP.cipherProcess
    | with_reducible apply hP.setNullDeref
    | with_reducible apply hP.setXmlError
    | with_reducible apply hP.setHeaderHash
    | with_reducible apply hP.setBinaryPool
    | with_reducible apply hP.addDeletedObject
    | refine snd_of_eq (by assumption) (hP.getGroup _ _ ?_)
    | refine snd_of_eq (by assumption) (hP.getEntry _ _ ?_)
    | refine snd_of_eq (by assumption) (hP.cipherProcess _ _ _ _ ?_)
    | refine snd_of_eq (by assumption) (hP.randomUuid _ _ ?_)
    | dsimp only
    | split)

theorem parseCustomDataChild_ref {P : Reader → Prop} (hP : RefLeaf P) {c : XmlElement} {s : Unit × Reader}
    (h : P s.2) : P ((parseCustomDataChild c s).2) := by
  unfold parseCustomDataChild
  repeat' (first
    | assumption
    | with_reducible apply stable_ite
    | with_reducible apply stable_ite_snd
    | with_reducible apply hP.setLastTopVisibleEntry
    | with_reducible apply hP.setRecycleBin
    | with_reducible apply hP.setEntryTemplatesGroup
    | with_reducible apply hP.setLastSelectedGroup
    | with_reducible apply hP.setLastTopVisibleGroup
    | exact fun _ => rfl
    | with_reducible apply hP.updGroup
    | with_reducible apply hP.updEntry
    | with_reducible apply hP.raiseError
    | with_reducible apply hP.setMeta
    | with_reducible apply hP.getGroup
    | with_reducible apply hP.getEntry
    | with_reducible apply hP.randomUuid
    | with_reducible apply hP.cipherProcess
    | with_reducible apply hP.setNullDeref
    | with_reducible apply hP.setXmlError
    | with_reducible apply hP.setHeaderHash
    | with_reducible apply hP.setBinaryPool
    | with_reducible apply hP.addDeletedObject
    | with_reducible apply parseCustomDataItem_ref hP
    | refine snd_of_eq (by assumption) (parseCustomDataItem_ref hP ?_)
    | refine snd_of_eq (by assumption) (hP.getGroup _ _ ?_)
    | refine snd_of_eq (by assumption) (hP.getEntry _ _ ?_)
    | refine snd_of_eq (by assumption) (hP.cipherProcess _ _ _ _ ?_)
    | refine snd_of_eq (by assumption) (hP.randomUuid _ _ ?_)
    | dsimp only
    | split)

theorem parseCustomData_ref {P : Reader → Prop} (hP : RefLeaf P) {x : XmlElement} {st : Reader}
    (h : P st) : P (parseCustomData x st) := by
  unfold parseCustomData
  repeat' (first
    | assumption
    | with_reducible apply stable_ite
    | with_reducible apply stable_ite_snd
    | with_reducible apply hP.setLastTopVisibleEntry
    | with_reducible apply hP.setRecycleBin
    | with_reducible apply hP.setEntryTemplatesGroup
    | with_reducible apply hP.setLastSelectedGroup
    | with_reducible apply hP.setLastTopVisibleGroup
    | exact forEachChild_stable (fun _ _ hs => parseCustomDataChild_ref hP hs) h
    | exact snd_of_eq (by assumption) (forEachChild_stable (fun _ _ hs => parseCustomDataChild_ref hP hs) h)
    | exact fun _ => rfl
    | with_reducible apply hP.updGroup
    | with_reducible apply hP.updEntry
    | with_reducible apply hP.raiseError
    | with_reducible apply hP.setMeta
    | with_reducible apply hP.getGroup
    | with_reducible apply hP.getEntry
    | with_reducible apply hP.randomUuid
    | with_reducible apply hP.cipherProcess
    | with_reducible apply hP.setNullDeref
    | with_reducible apply hP.setXmlError
    | with_reducible apply hP.setHeaderHash
    | with_reducible apply hP.setBinaryPool
    | with_reducible apply hP.addDeletedObject
    | refine snd_of_eq (by assumption) (hP.getGroup _ _ ?_)
    | refine snd_of_eq (by assumption) (hP.getEntry _ _ ?_)
    | refine snd_of_eq (by assumption) (hP.cipherProcess _ _ _ _ ?_)
    | refine snd_of_eq (by assumption) (hP.randomUuid _ _ ?_)
    | dsimp only
    | split)

theorem parseMetaChild_ref {P : Reader → Prop} (hP : RefLeaf P) {env : Env} {c : XmlElement} {st : Reader}
    (h : P st) : P (parseMetaChild env c st) := by
  unfold parseMetaChild
  repeat' (first
    | assumption
    | with_reducible apply stable_ite
    | with_reducible apply stable_ite_snd
    | with_reducible apply hP.setLastTopVisibleEntry
    | with_reducible apply hP.setRecycleBin
    | with_reducible apply hP.setEntryTemplatesGroup
    | with_reducible apply hP.setLastSelectedGroup
    | with_reducible apply hP.setLastTopVisibleGroup
    | exact fun _ => rfl
    | with_reducible apply hP.updGroup
    | with_reducible apply hP.updEntry
    | with_reducible apply hP.raiseError
    | with_reducible apply hP.setMeta
    | with_reducible apply hP.getGroup
    | with_reducible apply hP.getEntry
    | with_reducible apply hP.randomUuid
    | with_reducible apply hP.cipherProcess
    | with_reducible apply hP.setNullDeref
    | with_reducible apply hP.setXmlError
    | with_reducible apply hP.setHeaderHash
    | with_reducible apply hP.setBinaryPool
    | with_reducible apply hP.addDeletedObject
    | with_reducible apply readString_ref hP
    | refine snd_of_eq (by assumption) (readString_ref hP ?_)
    | with_reducible apply readBinary_ref hP
    | refine snd_of_eq (by assumption) (readBinary_ref hP ?_)
    | with_reducible apply readDateTime_ref hP
    | refine snd_of_eq (by assumption) (readDateTime_ref hP ?_)
    | with_reducible apply readNumber_ref hP
    | refine snd_of_eq (by assumption) (readNumber_ref hP ?_)
    | with_reducible apply readColor_ref hP
    | refine snd_of_eq (by assumption) (readColor_ref hP ?_)
    | with_reducible apply readBool_ref hP
    | refine snd_of_eq (by assumption) (readBool_ref hP ?_)
    | with_reducible apply readUuid_ref hP
    | refine snd_of_eq (by assumption) (readUuid_ref hP ?_)
    | with_reducible apply parseMemoryProtection_ref hP
    | refine snd_of_eq (by assumption) (parseMemoryProtection_ref hP ?_)
    | with_reducible apply parseCustomIcons_ref hP
    | refine snd_of_eq (by assumption) (parseCustomIcons_ref hP ?_)
    | with_reducible apply parseBinaries_ref hP
    | refine snd_of_eq (by assumption) (parseBinaries_ref hP ?_)
    | with_reducible apply parseCustomData_ref hP
    | refine snd_of_eq (by assumption) (parseCustomData_ref hP ?_)
    | refine snd_of_eq (by assumption) (hP.getGroup _ _ ?_)
    | refine snd_of_eq (by assumption) (hP.getEntry _ _ ?_)
    | refine snd_of_eq (by assumption) (hP.cipherProcess _ _ _ _ ?_)
    | refine snd_of_eq (by assumption) (hP.randomUuid _ _ ?_)
    | dsimp only
    | split)

theorem parseMeta_ref {P : Reader → Prop} (hP : RefLeaf P) {env : Env} {x : XmlElement}
    {st : Reader} (h : P st) : P (parseMeta env x st) := by
  unfold parseMeta
  exact forEachChild_stable (fun _ _ hs => parseMetaChild_ref hP hs) h

theorem parseTimesChild_ref {P : Reader → Prop} (hP : RefLeaf P) {env : Env} {c : XmlElement} {s : TimeInfo × Reader}
    (h : P s.2) : P ((parseTimesChild env c s).2) := by
  unfold parseTimesChild
  repeat' (first
    | assumption
    | with_reducible apply stable_ite
    | with_reducible apply stable_ite_snd
    | with_reducible apply hP.setLastTopVisibleEntry
    | with_reducible apply hP.setRecycleBin
    | with_reducible apply hP.setEntryTemplatesGroup
    | with_reducible apply hP.setLastSelectedGroup
    | with_reducible apply hP.setLastTopVisibleGroup
    | exact fun _ => rfl
    | with_reducible apply hP.updGroup
    | with_reducible apply hP.updEntry
    | with_reducible apply hP.raiseError
    | with_reducible apply hP.setMeta
    | with_reducible apply hP.getGroup
    | with_reducible apply hP.getEntry
    | with_reducible apply hP.randomUuid
    | with_reducible apply hP.cipherProcess
    | with_reducible apply hP.setNullDeref
    | with_reducible apply hP.setXmlError
    | with_reducible apply hP.setHeaderHash
    | with_reducible apply hP.setBinaryPool
    | with_reducible apply hP.addDeletedObject
    | with_reducible apply readDateTime_ref hP
    | refine snd_of_eq (by assumption) (readDateTime_ref hP ?_)
    | with_reducible apply readBool_ref hP
    | refine snd_of_eq (by assumption) (readBool_ref hP ?_)
    | with_reducible apply readNumber_ref hP
    | refine snd_of_eq (by assumption) (readNumber_ref hP ?_)
    | refine snd_of_eq (by assumption) (hP.getGroup _ _ ?_)
    | refine snd_of_eq (by assumption) (hP.getEntry _ _ ?_)
    | refine snd_of_eq (by assumption) (hP.cipherProcess _ _ _ _ ?_)
    | refine snd_of_eq (by assumption) (hP.randomUuid _ _ ?_)
    | dsimp only
    | split)

theorem parseTimes_ref {P : Reader → Prop} (hP : RefLeaf P) {env : Env} {x : XmlElement} {st : Reader}
    (h : P st) : P ((parseTimes env x st).2) := by
  unfold parseTimes
  repeat' (first
    | assumption
    | with_reducible apply stable_ite
    | with_reducible apply stable_ite_snd
    | with_reducible apply hP.setLastTopVisibleEntry
    | with_reducible apply hP.setRecycleBin
    | with_reducible apply hP.setEntryTemplatesGroup
    | with_reducible apply hP.setLastSelectedGroup
    | with_reducible apply hP.setLastTopVisibleGroup
    | exact forEachChild_stable (fun _ _ hs => parseTimesChild_ref hP hs) h
    | exact snd_of_eq (by assumption) (forEachChild_stable (fun _ _ hs => parseTimesChild_ref hP hs) h)
    | exact fun _ => rfl
    | with_reducible apply hP.updGroup
    | with_reducible apply hP.updEntry
    | with_reducible apply hP.raiseError
    | with_reducible apply hP.setMeta
    | with_reducible apply hP.getGroup
    | with_reducible apply hP.getEntry
    | with_reducible apply hP.randomUuid
    | with_reducible apply hP.cipherProcess
    | with_reducible apply hP.setNullDeref
    | with_reducible apply hP.setXmlError
    | with_reducible apply hP.setHeaderHash
    | with_reducible apply hP.setBinaryPool
    | with_reducible apply hP.addDeletedObject
    | refine snd_of_eq (by assumption) (hP.getGroup _ _ ?_)
    | refine snd_of_eq (by assumption) (hP.getEntry _ _ ?_)
    | refine snd_of_eq (by assumption) (hP.cipherProcess _ _ _ _ ?_)
    | refine snd_of_eq (by assumption) (hP.randomUuid _ _ ?_)
    | dsimp only
    | split)

theorem parseDeletedObjectChild_ref {P : Reader → Prop} (hP : RefLeaf P) {env : Env} {c : XmlElement} {s : DeletedObject × Reader}
    (h : P s.2) : P ((parseDeletedObjectChild env c s).2) := by
  unfold parseDeletedObjectChild
  repeat' (first
    | assumption
    | with_reducible apply stable_ite
    | with_reducible apply stable_ite_snd
    | with_reducible apply hP.setLastTopVisibleEntry
    | with_reducible apply hP.setRecycleBin
    | with_reducible apply hP.setEntryTemplatesGroup
    | with_reducible apply hP.setLastSelectedGroup
    | with_reducible apply hP.setLastTopVisibleGroup
    | exact fun _ => rfl
    | with_reducible apply hP.updGroup
    | with_reducible apply hP.updEntry
    | with_reducible apply hP.raiseError
    | with_reducible apply hP.setMeta
    | with_reducible apply hP.getGroup
    | with_reducible apply hP.getEntry
    | with_reducible apply hP.randomUuid
    | with_reducible apply hP.cipherProcess
    | with_reducible apply hP.setNullDeref
    | with_reducible apply hP.setXmlError
    | with_reducible apply hP.setHeaderHash
    | with_reducible apply hP.setBinaryPool
    | with_reducible apply hP.addDeletedObject
    | with_reducible apply readUuid_ref hP
    | refine snd_of_eq (by assumption) (readUuid_ref hP ?_)
    | with_reducible apply readDateTime_ref hP
    | refine snd_of_eq (by assumption) (readDateTime_ref hP ?_)
    | refine snd_of_eq (by assumption) (hP.getGroup _ _ ?_)
    | refine snd_of_eq (by assumption) (hP.getEntry _ _ ?_)
    | refine snd_of_eq (by assumption) (hP.cipherProcess _ _ _ _ ?_)
    | refine snd_of_eq (by assumption) (hP.randomUuid _ _ ?_)
    | dsimp only
    | split)

theorem parseDeletedObject_ref {P : Reader → Prop} (hP : RefLeaf P) {env : Env} {x : XmlElement} {st : Reader}
    (h : P st) : P (parseDeletedObject env x st) := by
  unfold parseDeletedObject
  repeat' (first
    | assumption
    | with_reducible apply stable_ite
    | with_reducible apply stable_ite_snd
    | with_reducible apply hP.setLastTopVisibleEntry
    | with_reducible apply hP.setRecycleBin
    | with_reducible apply hP.setEntryTemplatesGroup
    | with_reducible apply hP.setLastSelectedGroup
    | with_reducible apply hP.setLastTopVisibleGroup
    | exact forEachChild_stable (fun _ _ hs => parseDeletedObjectChild_ref hP hs) h
    | exact snd_of_eq (by assumption) (forEachChild_stable (fun _ _ hs => parseDeletedObjectChild_ref hP hs) h)
    | exact fun _ => rfl
    | with_reducible apply hP.updGroup
    | with_reducible apply hP.updEntry
    | with_reducible apply hP.raiseError
    | with_reducible apply hP.setMeta
    | with_reducible apply hP.getGroup
    | with_reducible apply hP.getEntry
    | with_reducible apply hP.randomUuid
    | with_reducible apply hP.cipherProcess
    | with_reducible apply hP.setNullDeref
    | with_reducible apply hP.setXmlError
    | with_reducible apply hP.setHeaderHash
    | with_reducible apply hP.setBinaryPool
    | with_reducible apply hP.addDeletedObject
    | refine snd_of_eq (by assumption) (hP.getGroup _ _ ?_)
    | refine snd_of_eq (by assumption) (hP.getEntry _ _ ?_)
    | refine snd_of_eq (by assumption) (hP.cipherProcess _ _ _ _ ?_)
    | refine snd_of_eq (by assumption) (hP.randomUuid _ _ ?_)
    | dsimp only
    | split)

theorem parseDeletedObjectsChild_ref {P : Reader → Prop} (hP : RefLeaf P) {env : Env} {c : XmlElement} {s : Unit × Reader}
    (h : P s.2) : P ((parseDeletedObjectsChild env c s).2) := by
  unfold parseDeletedObjectsChild
  repeat' (first
    | assumption
    | with_reducible apply stable_ite
    | with_reducible apply stable_ite_snd
    | with_reducible apply hP.setLastTopVisibleEntry
    | with_reducible apply hP.setRecycleBin
    | with_reducible apply hP.setEntryTemplatesGroup
    | with_reducible apply hP.setLastSelectedGroup
    | with_reducible apply hP.setLastTopVisibleGroup
    | exact fun _ => rfl
    | with_reducible apply hP.updGroup
    | with_reducible apply hP.updEntry
    | with_reducible apply hP.raiseError
    | with_reducible apply hP.setMeta
    | with_reducible apply hP.getGroup
    | with_reducible apply hP.getEntry
    | with_reducible apply hP.randomUuid
    | with_reducible apply hP.cipherProcess
    | with_reducible apply hP.setNullDeref
    | with_reducible apply hP.setXmlError
    | with_reducible apply hP.setHeaderHash
    | with_reducible apply hP.setBinaryPool
    | with_reducible apply hP.addDeletedObject
    | with_reducible apply parseDeletedObject_ref hP
    | refine snd_of_eq (by assumption) (parseDeletedObject_ref hP ?_)
    | refine snd_of_eq (by assumption) (hP.getGroup _ _ ?_)
    | refine snd_of_eq (by assumption) (hP.getEntry _ _ ?_)
    | refine snd_of_eq (by assumption) (hP.cipherProcess _ _ _ _ ?_)
    | refine snd_of_eq (by assumption) (hP.randomUuid _ _ ?_)
    | dsimp only
    | split)

theorem parseDeletedObjects_ref {P : Reader → Prop} (hP : RefLeaf P) {env : Env} {x : XmlElement} {st : Reader}
    (h : P st) : P (parseDeletedObjects env x st) := by
  unfold parseDeletedObjects
  repeat' (first
    | assumption
    | with_reducible apply stable_ite
    | with_reducible apply stable_ite_snd
    | with_reducible apply hP.setLastTopVisibleEntry
    | with_reducible apply hP.setRecycleBin
    | with_reducible apply hP.setEntryTemplatesGroup
    | with_reducible apply hP.setLastSelectedGroup
    | with_reducible apply hP.setLastTopVisibleGroup
    | exact forEachChild_stable (fun _ _ hs => parseDeletedObjectsChild_ref hP hs) h
    | exact snd_of_eq (by assumption) (forEachChild_stable (fun _ _ hs => parseDeletedObjectsChild_ref hP hs) h)
    | exact fun _ => rfl
    | with_reducible apply hP.updGroup
    | with_reducible apply hP.updEntry
    | with_reducible apply hP.raiseError
    | with_reducible apply hP.setMeta
    | with_reducible apply hP.getGroup
    | with_reducible apply hP.getEntry
    | with_reducible apply hP.randomUuid
    | with_reducible apply hP.cipherProcess
    | with_reducible apply hP.setNullDeref
    | with_reducible apply hP.setXmlError
    | with_reducible apply hP.setHeaderHash
    | with_reducible apply hP.setBinaryPool
    | with_reducible apply hP.addDeletedObject
    | refine snd_of_eq (by assumption) (hP.getGroup _ _ ?_)
    | refine snd_of_eq (by assumption) (hP.getEntry _ _ ?_)
    | refine snd_of_eq (by assumption) (hP.cipherProcess _ _ _ _ ?_)
    | refine snd_of_eq (by assumption) (hP.randomUuid _ _ ?_)
    | dsimp only
    | split)

theorem parseEntryStringValue_ref {P : Reader → Prop} (hP : RefLeaf P) {env : Env} {c : XmlElement} {s : StringLocals × Reader}
    (h : P s.2) : P ((parseEntryStringValue env c s).2) := by
  unfold parseEntryStringValue
  repeat' (first
    | assumption
    | with_reducible apply stable_ite
    | with_reducible apply stable_ite_snd
    | with_reducible apply hP.setLastTopVisibleEntry
    | with_reducible apply hP.setRecycleBin
    | with_reducible apply hP.setEntryTemplatesGroup
    | with_reducible apply hP.setLastSelectedGroup
    | with_reducible apply hP.setLastTopVisibleGroup
    | exact fun _ => rfl
    | with_reducible apply hP.updGroup
    | with_reducible apply hP.updEntry
    | with_reducible apply hP.raiseError
    | with_reducible apply hP.setMeta
    | with_reducible apply hP.getGroup
    | with_reducible apply hP.getEntry
    | with_reducible apply hP.randomUuid
    | with_reducible apply hP.cipherProcess
    | with_reducible apply hP.setNullDeref
    | with_reducible apply hP.setXmlError
    | with_reducible apply hP.setHeaderHash
    | with_reducible apply hP.setBinaryPool
    | with_reducible apply hP.addDeletedObject
    | with_reducible apply readString_ref hP
    | refine snd_of_eq (by assumption) (readString_ref hP ?_)
    | refine snd_of_eq (by assumption) (hP.getGroup _ _ ?_)
    | refine snd_of_eq (by assumption) (hP.getEntry _ _ ?_)
    | refine snd_of_eq (by assumption) (hP.cipherProcess _ _ _ _ ?_)
    | refine snd_of_eq (by assumption) (hP.randomUuid _ _ ?_)
    | dsimp only
    | split)

theorem parseEntryStringChild_ref {P : Reader → Prop} (hP : RefLeaf P) {env : Env} {c : XmlElement} {s : StringLocals × Reader}
    (h : P s.2) : P ((parseEntryStringChild env c s).2) := by
  unfold parseEntryStringChild
  repeat' (first
    | assumption
    | with_reducible apply stable_ite
    | with_reducible apply stable_ite_snd
    | with_reducible apply hP.setLastTopVisibleEntry
    | with_reducible apply hP.setRecycleBin
    | with_reducible apply hP.setEntryTemplatesGroup
    | with_reducible apply hP.setLastSelectedGroup
    | with_reducible apply hP.setLastTopVisibleGroup
    | exact fun _ => rfl
    | with_reducible apply hP.updGroup
    | with_reducible apply hP.updEntry
    | with_reducible apply hP.raiseError
    | with_reducible apply hP.setMeta
    | with_reducible apply hP.getGroup
    | with_reducible apply hP.getEntry
    | with_reducible apply hP.randomUuid
    | with_reducible apply hP.cipherProcess
    | with_reducible apply hP.setNullDeref
    | with_reducible apply hP.setXmlError
    | with_reducible apply hP.setHeaderHash
    | with_reducible apply hP.setBinaryPool
    | with_reducible apply hP.addDeletedObject
    | with_reducible apply readString_ref hP
    | refine snd_of_eq (by assumption) (readString_ref hP ?_)
    | with_reducible apply parseEntryStringValue_ref hP
    | refine snd_of_eq (by assumption) (parseEntryStringValue_ref hP ?_)
    | refine snd_of_eq (by assumption) (hP.getGroup _ _ ?_)
    | refine snd_of_eq (by assumption) (hP.getEntry _ _ ?_)
    | refine snd_of_eq (by assumption) (hP.cipherProcess _ _ _ _ ?_)
    | refine snd_of_eq (by assumption) (hP.randomUuid _ _ ?_)
    | dsimp only
    | split)

theorem parseEntryString_ref {P : Reader → Prop} (hP : RefLeaf P) {env : Env} {entry : Nat} {x : XmlElement} {st : Reader}
    (h : P st) : P (parseEntryString env entry x st) := by
  unfold parseEntryString
  repeat' (first
    | assumption
    | with_reducible apply stable_ite
    | with_reducible apply stable_ite_snd
    | with_reducible apply hP.setLastTopVisibleEntry
    | with_reducible apply hP.setRecycleBin
    | with_reducible apply hP.setEntryTemplatesGroup
    | with_reducible apply hP.setLastSelectedGroup
    | with_reducible apply hP.setLastTopVisibleGroup
    | exact forEachChild_stable (fun _ _ hs => parseEntryStringChild_ref hP hs) h
    | exact snd_of_eq (by assumption) (forEachChild_stable (fun _ _ hs => parseEntryStringChild_ref hP hs) h)
    | exact fun _ => rfl
    | with_reducible apply hP.updGroup
    | with_reducible apply hP.updEntry
    | with_reducible apply hP.raiseError
    | with_reducible apply hP.setMeta
    | with_reducible apply hP.getGroup
    | with_reducible apply hP.getEntry
    | with_reducible apply hP.randomUuid
    | with_reducible apply hP.cipherProcess
    | with_reducible apply hP.setNullDeref
    | with_reducible apply hP.setXmlError
    | with_reducible apply hP.setHeaderHash
    | with_reducible apply hP.setBinaryPool
    | with_reducible apply hP.addDeletedObject
    | refine snd_of_eq (by assumption) (hP.getGroup _ _ ?_)
    | refine snd_of_eq (by assumption) (hP.getEntry _ _ ?_)
    | refine snd_of_eq (by assumption) (hP.cipherProcess _ _ _ _ ?_)
    | refine snd_of_eq (by assumption) (hP.randomUuid _ _ ?_)
    | dsimp only
    | split)

theorem parseEntryBinaryValue_ref {P : Reader → Prop} (hP : RefLeaf P) {env : Env} {c : XmlElement} {s : BinaryLocals × Reader}
    (h : P s.2) : P ((parseEntryBinaryValue env c s).2) := by
  unfold parseEntryBinaryValue
  repeat' (first
    | assumption
    | with_reducible apply stable_ite
    | with_reducible apply stable_ite_snd
    | with_reducible apply hP.setLastTopVisibleEntry
    | with_reducible apply hP.setRecycleBin
    | with_reducible apply hP.setEntryTemplatesGroup
    | with_reducible apply hP.setLastSelectedGroup
    | with_reducible apply hP.setLastTopVisibleGroup
    | exact fun _ => rfl
    | with_reducible apply hP.updGroup
    | with_reducible apply hP.updEntry
    | with_reducible apply hP.raiseError
    | with_reducible apply hP.setMeta
    | with_reducible apply hP.getGroup
    | with_reducible apply hP.getEntry
    | with_reducible apply hP.randomUuid
    | with_reducible apply hP.cipherProcess
    | with_reducible apply hP.setNullDeref
    | with_reducible apply hP.setXmlError
    | with_reducible apply hP.setHeaderHash
    | with_reducible apply hP.setBinaryPool
    | with_reducible apply hP.addDeletedObject
    | with_reducible apply readBinary_ref hP
    | refine snd_of_eq (by assumption) (readBinary_ref hP ?_)
    | refine snd_of_eq (by assumption) (hP.getGroup _ _ ?_)
    | refine snd_of_eq (by assumption) (hP.getEntry _ _ ?_)
    | refine snd_of_eq (by assumption) (hP.cipherProcess _ _ _ _ ?_)
    | refine snd_of_eq (by assumption) (hP.randomUuid _ _ ?_)
    | dsimp only
    | split)

theorem parseEntryBinaryChild_ref {P : Reader → Prop} (hP : RefLeaf P) {env : Env} {c : XmlElement} {s : BinaryLocals × Reader}
    (h : P s.2) : P ((parseEntryBinaryChild env c s).2) := by
  unfold parseEntryBinaryChild
  repeat' (first
    | assumption
    | with_reducible apply stable_ite
    | with_reducible apply stable_ite_snd
    | with_reducible apply hP.setLastTopVisibleEntry
    | with_reducible apply hP.setRecycleBin
    | with_reducible apply hP.setEntryTemplatesGroup
    | with_reducible apply hP.setLastSelectedGroup
    | with_reducible apply hP.setLastTopVisibleGroup
    | exact fun _ => rfl
    | with_reducible apply hP.updGroup
    | with_reducible apply hP.updEntry
    | with_reducible apply hP.raiseError
    | with_reducible apply hP.setMeta
    | with_reducible apply hP.getGroup
    | with_reducible apply hP.getEntry
    | with_reducible apply hP.randomUuid
    | with_reducible apply hP.cipherProcess
    | with_reducible apply hP.setNullDeref
    | with_reducible apply hP.setXmlError
    | with_reducible apply hP.setHeaderHash
    | with_reducible apply hP.setBinaryPool
    | with_reducible apply hP.addDeletedObject
    | with_reducible apply readString_ref hP
    | refine snd_of_eq (by assumption) (readString_ref hP ?_)
    | with_reducible apply parseEntryBinaryValue_ref hP
    | refine snd_of_eq (by assumption) (parseEntryBinaryValue_ref hP ?_)
    | refine snd_of_eq (by assumption) (hP.getGroup _ _ ?_)
    | refine snd_of_eq (by assumption) (hP.getEntry _ _ ?_)
    | refine snd_of_eq (by assumption) (hP.cipherProcess _ _ _ _ ?_)
    | refine snd_of_eq (by assumption) (hP.randomUuid _ _ ?_)
    | dsimp only
    | split)

theorem parseEntryBinary_ref {P : Reader → Prop} (hP : RefLeaf P) {env : Env} {entry : Nat} {x : XmlElement} {st : Reader}
    (h : P st) : P ((parseEntryBinary env entry x st).2) := by
  unfold parseEntryBinary
  repeat' (first
    | assumption
    | with_reducible apply stable_ite
    | with_reducible apply stable_ite_snd
    | with_reducible apply hP.setLastTopVisibleEntry
    | with_reducible apply hP.setRecycleBin
    | with_reducible apply hP.setEntryTemplatesGroup
    | with_reducible apply hP.setLastSelectedGroup
    | with_reducible apply hP.setLastTopVisibleGroup
    | exact forEachChild_stable (fun _ _ hs => parseEntryBinaryChild_ref hP hs) h
    | exact snd_of_eq (by assumption) (forEachChild_stable (fun _ _ hs => parseEntryBinaryChild_ref hP hs) h)
    | exact fun _ => rfl
    | with_reducible apply hP.updGroup
    | with_reducible apply hP.updEntry
    | with_reducible apply hP.raiseError
    | with_reducible apply hP.setMeta
    | with_reducible apply hP.getGroup
    | with_reducible apply hP.getEntry
    | with_reducible apply hP.randomUuid
    | with_reducible apply hP.cipherProcess
    | with_reducible apply hP.setNullDeref
    | with_reducible apply hP.setXmlError
    | with_reducible apply hP.setHeaderHash
    | with_reducible apply hP.setBinaryPool
    | with_reducible apply hP.addDeletedObject
    | refine snd_of_eq (by assumption) (hP.getGroup _ _ ?_)
    | refine snd_of_eq (by assumption) (hP.getEntry _ _ ?_)
    | refine snd_of_eq (by assumption) (hP.cipherProcess _ _ _ _ ?_)
    | refine snd_of_eq (by assumption) (hP.randomUuid _ _ ?_)
    | dsimp only
    | split)

theorem parseAutoTypeAssocChild_ref {P : Reader → Prop} (hP : RefLeaf P) {c : XmlElement} {s : AssocLocals × Reader}
    (h : P s.2) : P ((parseAutoTypeAssocChild c s).2) := by
  unfold parseAutoTypeAssocChild
  repeat' (first
    | assumption
    | with_reducible apply stable_ite
    | with_reducible apply stable_ite_snd
    | with_reducible apply hP.setLastTopVisibleEntry
    | with_reducible apply hP.setRecycleBin
    | with_reducible apply hP.setEntryTemplatesGroup
    | with_reducible apply hP.setLastSelectedGroup
    | with_reducible apply hP.setLastTopVisibleGroup
    | exact fun _ => rfl
    | with_reducible apply hP.updGroup
    | with_reducible apply hP.updEntry
    | with_reducible apply hP.raiseError
    | with_reducible apply hP.setMeta
    | with_reducible apply hP.getGroup
    | with_reducible apply hP.getEntry
    | with_reducible apply hP.randomUuid
    | with_reducible apply hP.cipherProcess
    | with_reducible apply hP.setNullDeref
    | with_reducible apply hP.setXmlError
    | with_reducible apply hP.setHeaderHash
    | with_reducible apply hP.setBinaryPool
    | with_reducible apply hP.addDeletedObject
    | with_reducible apply readString_ref hP
    | refine snd_of_eq (by assumption) (readString_ref hP ?_)
    | refine snd_of_eq (by assumption) (hP.getGroup _ _ ?_)
    | refine snd_of_eq (by assumption) (hP.getEntry _ _ ?_)
    | refine snd_of_eq (by assumption) (hP.cipherProcess _ _ _ _ ?_)
    | refine snd_of_eq (by assumption) (hP.randomUuid _ _ ?_)
    | dsimp only
    | split)

theorem parseAutoTypeAssoc_ref {P : Reader → Prop} (hP : RefLeaf P) {entry : Nat} {x : XmlElement} {st : Reader}
    (h : P st) : P (parseAutoTypeAssoc entry x st) := by
  unfold parseAutoTypeAssoc
  repeat' (first
    | assumption
    | with_reducible apply stable_ite
    | with_reducible apply stable_ite_snd
    | with_reducible apply hP.setLastTopVisibleEntry
    | with_reducible apply hP.setRecycleBin
    | with_reducible apply hP.setEntryTemplatesGroup
    | with_reducible apply hP.setLastSelectedGroup
    | with_reducible apply hP.setLastTopVisibleGroup
    | exact forEachChild_stable (fun _ _ hs => parseAutoTypeAssocChild_ref hP hs) h
    | exact snd_of_eq (by assumption) (forEachChild_stable (fun _ _ hs => parseAutoTypeAssocChild_ref hP hs) h)
    | exact fun _ => rfl
    | with_reducible apply hP.updGroup
    | with_reducible apply hP.updEntry
    | with_reducible apply hP.raiseError
    | with_reducible apply hP.setMeta
    | with_reducible apply hP.getGroup
    | with_reducible apply hP.getEntry
    | with_reducible apply hP.randomUuid
    | with_reducible apply hP.cipherProcess
    | with_reducible apply hP.setNullDeref
    | with_reducible apply hP.setXmlError
    | with_reducible apply hP.setHeaderHash
    | with_reducible apply hP.setBinaryPool
    | with_reducible apply hP.addDeletedObject
    | refine snd_of_eq (by assumption) (hP.getGroup _ _ ?_)
    | refine snd_of_eq (by assumption) (hP.getEntry _ _ ?_)
    | refine snd_of_eq (by assumption) (hP.cipherProcess _ _ _ _ ?_)
    | refine snd_of_eq (by assumption) (hP.randomUuid _ _ ?_)
    | dsimp only
    | split)

theorem parseAutoTypeChild_ref {P : Reader → Prop} (hP : RefLeaf P) {env : Env} {entry : Nat} {c : XmlElement} {s : Unit × Reader}
    (h : P s.2) : P ((parseAutoTypeChild env entry c s).2) := by
  unfold parseAutoTypeChild
  repeat' (first
    | assumption
    | with_reducible apply stable_ite
    | with_reducible apply stable_ite_snd
    | with_reducible apply hP.setLastTopVisibleEntry
    | with_reducible apply hP.setRecycleBin
    | with_reducible apply hP.setEntryTemplatesGroup
    | with_reducible apply hP.setLastSelectedGroup
    | with_reducible apply hP.setLastTopVisibleGroup
    | exact fun _ => rfl
    | with_reducible apply hP.updGroup
    | with_reducible apply hP.updEntry
    | with_reducible apply hP.raiseError
    | with_reducible apply hP.setMeta
    | with_reducible apply hP.getGroup
    | with_reducible apply hP.getEntry
    | with_reducible apply hP.randomUuid
    | with_reducible apply hP.cipherProcess
    | with_reducible apply hP.setNullDeref
    | with_reducible apply hP.setXmlError
    | with_reducible apply hP.setHeaderHash
    | with_reducible apply hP.setBinaryPool
    | with_reducible apply hP.addDeletedObject
    | with_reducible apply readBool_ref hP
    | refine snd_of_eq (by assumption) (readBool_ref hP ?_)
    | with_reducible apply readNumber_ref hP
    | refine snd_of_eq (by assumption) (readNumber_ref hP ?_)
    | with_reducible apply readString_ref hP
    | refine snd_of_eq (by assumption) (readString_ref hP ?_)
    | with_reducible apply parseAutoTypeAssoc_ref hP
    | refine snd_of_eq (by assumption) (parseAutoTypeAssoc_ref hP ?_)
    | refine snd_of_eq (by assumption) (hP.getGroup _ _ ?_)
    | refine snd_of_eq (by assumption) (hP.getEntry _ _ ?_)
    | refine snd_of_eq (by assumption) (hP.cipherProcess _ _ _ _ ?_)
    | refine snd_of_eq (by assumption) (hP.randomUuid _ _ ?_)
    | dsimp only
    | split)

theorem parseAutoType_ref {P : Reader → Prop} (hP : RefLeaf P) {env : Env} {entry : Nat} {x : XmlElement} {st : Reader}
    (h : P st) : P (parseAutoType env entry x st) := by
  unfold parseAutoType
  repeat' (first
    | assumption
    | with_reducible apply stable_ite
    | with_reducible apply stable_ite_snd
    | with_reducible apply hP.setLastTopVisibleEntry
    | with_reducible apply hP.setRecycleBin
    | with_reducible apply hP.setEntryTemplatesGroup
    | with_reducible apply hP.setLastSelectedGroup
    | with_reducible apply hP.setLastTopVisibleGroup
    | exact forEachChild_stable (fun _ _ hs => parseAutoTypeChild_ref hP hs) h
    | exact snd_of_eq (by assumption) (forEachChild_stable (fun _ _ hs => parseAutoTypeChild_ref hP hs) h)
    | exact fun _ => rfl
    | with_reducible apply hP.updGroup
    | with_reducible apply hP.updEntry
    | with_reducible apply hP.raiseError
    | with_reducible apply hP.setMeta
    | with_reducible apply hP.getGroup
    | with_reducible apply hP.getEntry
    | with_reducible apply hP.randomUuid
    | with_reducible apply hP.cipherProcess
    | with_reducible apply hP.setNullDeref
    | with_reducible apply hP.setXmlError
    | with_reducible apply hP.setHeaderHash
    | with_reducible apply hP.setBinaryPool
    | with_reducible apply hP.addDeletedObject
    | refine snd_of_eq (by assumption) (hP.getGroup _ _ ?_)
    | refine snd_of_eq (by assumption) (hP.getEntry _ _ ?_)
    | refine snd_of_eq (by assumption) (hP.cipherProcess _ _ _ _ ?_)
    | refine snd_of_eq (by assumption) (hP.randomUuid _ _ ?_)
    | dsimp only
    | split)

theorem parseGroupField_ref {P : Reader → Prop} (hP : RefLeaf P) {env : Env} {group : Nat} {c : XmlElement} {st : Reader}
    (h : P st) : P (parseGroupField env group c st) := by
  unfold parseGroupField
  repeat' (first
    | assumption
    | with_reducible apply stable_ite
    | with_reducible apply stable_ite_snd
    | with_reducible apply hP.setLastTopVisibleEntry
    | with_reducible apply hP.setRecycleBin
    | with_reducible apply hP.setEntryTemplatesGroup
    | with_reducible apply hP.setLastSelectedGroup
    | with_reducible apply hP.setLastTopVisibleGroup
    | exact fun _ => rfl
    | with_reducible apply hP.updGroup
    | with_reducible apply hP.updEntry
    | with_reducible apply hP.raiseError
    | with_reducible apply hP.setMeta
    | with_reducible apply hP.getGroup
    | with_reducible apply hP.getEntry
    | with_reducible apply hP.randomUuid
    | with_reducible apply hP.cipherProcess
    | with_reducible apply hP.setNullDeref
    | with_reducible apply hP.setXmlError
    | with_reducible apply hP.setHeaderHash
    | with_reducible apply hP.setBinaryPool
    | with_reducible apply hP.addDeletedObject
    | with_reducible apply readUuid_ref hP
    | refine snd_of_eq (by assumption) (readUuid_ref hP ?_)
    | with_reducible apply readString_ref hP
    | refine snd_of_eq (by assumption) (readString_ref hP ?_)
    | with_reducible apply readNumber_ref hP
    | refine snd_of_eq (by assumption) (readNumber_ref hP ?_)
    | with_reducible apply parseTimes_ref hP
    | refine snd_of_eq (by assumption) (parseTimes_ref hP ?_)
    | with_reducible apply readBool_ref hP
    | refine snd_of_eq (by assumption) (readBool_ref hP ?_)
    | refine snd_of_eq (by assumption) (hP.getGroup _ _ ?_)
    | refine snd_of_eq (by assumption) (hP.getEntry _ _ ?_)
    | refine snd_of_eq (by assumption) (hP.cipherProcess _ _ _ _ ?_)
    | refine snd_of_eq (by assumption) (hP.randomUuid _ _ ?_)
    | dsimp only
    | split)

theorem parseEntryField_ref {P : Reader → Prop} (hP : RefLeaf P) {env : Env} {entry : Nat} {c : XmlElement} {s : List (String × String) × Reader}
    (h : P s.2) : P ((parseEntryField env entry c s).2) := by
  unfold parseEntryField
  repeat' (first
    | assumption
    | with_reducible apply stable_ite
    | with_reducible apply stable_ite_snd
    | with_reducible apply hP.setLastTopVisibleEntry
    | with_reducible apply hP.setRecycleBin
    | with_reducible apply hP.setEntryTemplatesGroup
    | with_reducible apply hP.setLastSelectedGroup
    | with_reducible apply hP.setLastTopVisibleGroup
    | exact fun _ => rfl
    | with_reducible apply hP.updGroup
    | with_reducible apply hP.updEntry
    | with_reducible apply hP.raiseError
    | with_reducible apply hP.setMeta
    | with_reducible apply hP.getGroup
    | with_reducible apply hP.getEntry
    | with_reducible apply hP.randomUuid
    | with_reducible apply hP.cipherProcess
    | with_reducible apply hP.setNullDeref
    | with_reducible apply hP.setXmlError
    | with_reducible apply hP.setHeaderHash
    | with_reducible apply hP.setBinaryPool
    | with_reducible apply hP.addDeletedObject
    | with_reducible apply readUuid_ref hP
    | refine snd_of_eq (by assumption) (readUuid_ref hP ?_)
    | with_reducible apply readString_ref hP
    | refine snd_of_eq (by assumption) (readString_ref hP ?_)
    | with_reducible apply readNumber_ref hP
    | refine snd_of_eq (by assumption) (readNumber_ref hP ?_)
    | with_reducible apply readColor_ref hP
    | refine snd_of_eq (by assumption) (readColor_ref hP ?_)
    | with_reducible apply parseTimes_ref hP
    | refine snd_of_eq (by assumption) (parseTimes_ref hP ?_)
    | with_reducible apply parseEntryString_ref hP
    | refine snd_of_eq (by assumption) (parseEntryString_ref hP ?_)
    | with_reducible apply parseEntryBinary_ref hP
    | refine snd_of_eq (by assumption) (parseEntryBinary_ref hP ?_)
    | with_reducible apply parseAutoType_ref hP
    | refine snd_of_eq (by assumption) (parseAutoType_ref hP ?_)
    | refine snd_of_eq (by assumption) (hP.getGroup _ _ ?_)
    | refine snd_of_eq (by assumption) (hP.getEntry _ _ ?_)
    | refine snd_of_eq (by assumption) (hP.cipherProcess _ _ _ _ ?_)
    | refine snd_of_eq (by assumption) (hP.randomUuid _ _ ?_)
    | dsimp only
    | split)

theorem ensureGroupUuid_ref {P : Reader → Prop} (hP : RefLeaf P) {env : Env} {group : Nat} {st : Reader}
    (h : P st) : P (ensureGroupUuid env group st) := by
  unfold ensureGroupUuid
  repeat' (first
    | assumption
    | with_reducible apply stable_ite
    | with_reducible apply stable_ite_snd
    | with_reducible apply hP.setLastTopVisibleEntry
    | with_reducible apply hP.setRecycleBin
    | with_reducible apply hP.setEntryTemplatesGroup
    | with_reducible apply hP.setLastSelectedGroup
    | with_reducible apply hP.setLastTopVisibleGroup
    | exact fun _ => rfl
    | with_reducible apply hP.updGroup
    | with_reducible apply hP.updEntry
    | with_reducible apply hP.raiseError
    | with_reducible apply hP.setMeta
    | with_reducible apply hP.getGroup
    | with_reducible apply hP.getEntry
    | with_reducible apply hP.randomUuid
    | with_reducible apply hP.cipherProcess
    | with_reducible apply hP.setNullDeref
    | with_reducible apply hP.setXmlError
    | with_reducible apply hP.setHeaderHash
    | with_reducible apply hP.setBinaryPool
    | with_reducible apply hP.addDeletedObject
    | refine snd_of_eq (by assumption) (hP.getGroup _ _ ?_)
    | refine snd_of_eq (by assumption) (hP.getEntry _ _ ?_)
    | refine snd_of_eq (by assumption) (hP.cipherProcess _ _ _ _ ?_)
    | refine snd_of_eq (by assumption) (hP.randomUuid _ _ ?_)
    | dsimp only
    | split)

theorem ensureEntryUuid_ref {P : Reader → Prop} (hP : RefLeaf P) {env : Env} {entry : Nat} {st : Reader}
    (h : P st) : P (ensureEntryUuid env entry st) := by
  unfold ensureEntryUuid
  repeat' (first
    | assumption
    | with_reducible apply stable_ite
    | with_reducible apply stable_ite_snd
    | with_reducible apply hP.setLastTopVisibleEntry
    | with_reducible apply hP.setRecycleBin
    | with_reducible apply hP.setEntryTemplatesGroup
    | with_reducible apply hP.setLastSelectedGroup
    | with_reducible apply hP.setLastTopVisibleGroup
    | exact fun _ => rfl
    | with_reducible apply hP.updGroup
    | with_reducible apply hP.updEntry
    | with_reducible apply hP.raiseError
    | with_reducible apply hP.setMeta
    | with_reducible apply hP.getGroup
    | with_reducible apply hP.getEntry
    | with_reducible apply hP.randomUuid
    | with_reducible apply hP.cipherProcess
    | with_reducible apply hP.setNullDeref
    | with_reducible apply hP.setXmlError
    | with_reducible apply hP.setHeaderHash
    | with_reducible apply hP.setBinaryPool
    | with_reducible apply hP.addDeletedObject
    | refine snd_of_eq (by assumption) (hP.getGroup _ _ ?_)
    | refine snd_of_eq (by assumption) (hP.getEntry _ _ ?_)
    | refine snd_of_eq (by assumption) (hP.cipherProcess _ _ _ _ ?_)
    | refine snd_of_eq (by assumption) (hP.randomUuid _ _ ?_)
    | dsimp only
    | split)

theorem addHistoryItems_ref {P : Reader → Prop} (hP : RefLeaf P) {entry : Nat}
    {items : List Nat} {st : Reader} (h : P st) : P (addHistoryItems entry items st) := by
  induction items generalizing st with
  | nil => exact h
  | cons x rest ih =>
    unfold addHistoryItems
    apply ih
    refine hP.updEntry _ _ _ (fun _ => rfl) ?_
    repeat' (first
      | assumption
      | exact fun _ => rfl
      | with_reducible apply stable_ite
      | with_reducible apply hP.raiseError
      | with_reducible apply hP.updEntry)

theorem Reader.endElement_ref {P : Reader → Prop} (hP : RefStable P) {st : Reader}
    (h : P st) : P (st.endElement) := by
  unfold Reader.endElement
  repeat' (first
    | assumption
    | with_reducible apply stable_ite
    | with_reducible apply stable_ite_snd
    | with_reducible apply hP.toRefLeaf.setLastTopVisibleEntry
    | with_reducible apply hP.toRefLeaf.setRecycleBin
    | with_reducible apply hP.toRefLeaf.setEntryTemplatesGroup
    | with_reducible apply hP.toRefLeaf.setLastSelectedGroup
    | with_reducible apply hP.toRefLeaf.setLastTopVisibleGroup
    | with_reducible apply hP.copyGroup
    | exact fun _ => rfl
    | with_reducible apply hP.toRefLeaf.updGroup
    | with_reducible apply hP.toRefLeaf.updEntry
    | with_reducible apply hP.toRefLeaf.raiseError
    | with_reducible apply hP.toRefLeaf.setMeta
    | with_reducible apply hP.toRefLeaf.getGroup
    | with_reducible apply hP.toRefLeaf.getEntry
    | with_reducible apply hP.toRefLeaf.randomUuid
    | with_reducible apply hP.toRefLeaf.cipherProcess
    | with_reducible apply hP.toRefLeaf.setNullDeref
    | with_reducible apply hP.toRefLeaf.setXmlError
    | with_reducible apply hP.toRefLeaf.setHeaderHash
    | with_reducible apply hP.toRefLeaf.setBinaryPool
    | with_reducible apply hP.toRefLeaf.addDeletedObject
    | with_reducible apply hP.setPending
    | with_reducible apply hP.newGroup
    | with_reducible apply hP.newEntry
    | with_reducible apply hP.setParent
    | with_reducible apply hP.setGroup
    | with_reducible apply hP.setRootGroup
    | with_reducible apply hP.addBinaryRefs
    | refine snd_of_eq (by assumption) (hP.toRefLeaf.getGroup _ _ ?_)
    | refine snd_of_eq (by assumption) (hP.toRefLeaf.getEntry _ _ ?_)
    | refine snd_of_eq (by assumption) (hP.toRefLeaf.cipherProcess _ _ _ _ ?_)
    | refine snd_of_eq (by assumption) (hP.toRefLeaf.randomUuid _ _ ?_)
    | refine foldl_stable (fun _ _ hs => hP.setParent _ _ _ hs) ?_
    | refine foldl_stable (fun _ _ hs => hP.setGroup _ _ _ hs) ?_
    | refine snd_of_eq (by assumption) (hP.newGroup _ ?_)
    | refine snd_of_eq (by assumption) (hP.newEntry _ ?_)
    | dsimp only
    | split)

theorem skipCurrentElement_ref {P : Reader → Prop} (hP : RefStable P) {st : Reader}
    (h : P st) : P (skipCurrentElement st) := by
  unfold skipCurrentElement
  repeat' (first
    | assumption
    | with_reducible apply stable_ite
    | with_reducible apply stable_ite_snd
    | with_reducible apply hP.toRefLeaf.setLastTopVisibleEntry
    | with_reducible apply hP.toRefLeaf.setRecycleBin
    | with_reducible apply hP.toRefLeaf.setEntryTemplatesGroup
    | with_reducible apply hP.toRefLeaf.setLastSelectedGroup
    | with_reducible apply hP.toRefLeaf.setLastTopVisibleGroup
    | with_reducible apply hP.copyGroup
    | exact fun _ => rfl
    | with_reducible apply hP.toRefLeaf.updGroup
    | with_reducible apply hP.toRefLeaf.updEntry
    | with_reducible apply hP.toRefLeaf.raiseError
    | with_reducible apply hP.toRefLeaf.setMeta
    | with_reducible apply hP.toRefLeaf.getGroup
    | with_reducible apply hP.toRefLeaf.getEntry
    | with_reducible apply hP.toRefLeaf.randomUuid
    | with_reducible apply hP.toRefLeaf.cipherProcess
    | with_reducible apply hP.toRefLeaf.setNullDeref
    | with_reducible apply hP.toRefLeaf.setXmlError
    | with_reducible apply hP.toRefLeaf.setHeaderHash
    | with_reducible apply hP.toRefLeaf.setBinaryPool
    | with_reducible apply hP.toRefLeaf.addDeletedObject
    | with_reducible apply hP.setPending
    | with_reducible apply hP.newGroup
    | with_reducible apply hP.newEntry
    | with_reducible apply hP.setParent
    | with_reducible apply hP.setGroup
    | with_reducible apply hP.setRootGroup
    | with_reducible apply hP.addBinaryRefs
    | with_reducible apply Reader.endElement_ref hP
    | refine snd_of_eq (by assumption) (Reader.endElement_ref hP ?_)
    | refine snd_of_eq (by assumption) (hP.toRefLeaf.getGroup _ _ ?_)
    | refine snd_of_eq (by assumption) (hP.toRefLeaf.getEntry _ _ ?_)
    | refine snd_of_eq (by assumption) (hP.toRefLeaf.cipherProcess _ _ _ _ ?_)
    | refine snd_of_eq (by assumption) (hP.toRefLeaf.randomUuid _ _ ?_)
    | refine foldl_stable (fun _ _ hs => hP.setParent _ _ _ hs) ?_
    | refine foldl_stable (fun _ _ hs => hP.setGroup _ _ _ hs) ?_
    | refine snd_of_eq (by assumption) (hP.newGroup _ ?_)
    | refine snd_of_eq (by assumption) (hP.newEntry _ ?_)
    | dsimp only
    | split)

theorem readNextStartElement_ref {P : Reader → Prop} (hP : RefStable P) {st : Reader}
    (h : P st) : P ((readNextStartElement st).2) := by
  unfold readNextStartElement
  repeat' (first
    | assumption
    | with_reducible apply stable_ite
    | with_reducible apply stable_ite_snd
    | with_reducible apply hP.toRefLeaf.setLastTopVisibleEntry
    | with_reducible apply hP.toRefLeaf.setRecycleBin
    | with_reducible apply hP.toRefLeaf.setEntryTemplatesGroup
    | with_reducible apply hP.toRefLeaf.setLastSelectedGroup
    | with_reducible apply hP.toRefLeaf.setLastTopVisibleGroup
    | with_reducible apply hP.copyGroup
    | exact fun _ => rfl
    | with_reducible apply hP.toRefLeaf.updGroup
    | with_reducible apply hP.toRefLeaf.updEntry
    | with_reducible apply hP.toRefLeaf.raiseError
    | with_reducible apply hP.toRefLeaf.setMeta
    | with_reducible apply hP.toRefLeaf.getGroup
    | with_reducible apply hP.toRefLeaf.getEntry
    | with_reducible apply hP.toRefLeaf.randomUuid
    | with_reducible apply hP.toRefLeaf.cipherProcess
    | with_reducible apply hP.toRefLeaf.setNullDeref
    | with_reducible apply hP.toRefLeaf.setXmlError
    | with_reducible apply hP.toRefLeaf.setHeaderHash
    | with_reducible apply hP.toRefLeaf.setBinaryPool
    | with_reducible apply hP.toRefLeaf.addDeletedObject
    | with_reducible apply hP.setPending
    | with_reducible apply hP.newGroup
    | with_reducible apply hP.newEntry
    | with_reducible apply hP.setParent
    | with_reducible apply hP.setGroup
    | with_reducible apply hP.setRootGroup
    | with_reducible apply hP.addBinaryRefs
    | refine snd_of_eq (by assumption) (hP.toRefLeaf.getGroup _ _ ?_)
    | refine snd_of_eq (by assumption) (hP.toRefLeaf.getEntry _ _ ?_)
    | refine snd_of_eq (by assumption) (hP.toRefLeaf.cipherProcess _ _ _ _ ?_)
    | refine snd_of_eq (by assumption) (hP.toRefLeaf.randomUuid _ _ ?_)
    | refine foldl_stable (fun _ _ hs => hP.setParent _ _ _ hs) ?_
    | refine foldl_stable (fun _ _ hs => hP.setGroup _ _ _ hs) ?_
    | refine snd_of_eq (by assumption) (hP.newGroup _ ?_)
    | refine snd_of_eq (by assumption) (hP.newEntry _ ?_)
    | dsimp only
    | split)

theorem mergeGroup_ref {P : Reader → Prop} (hP : RefStable P) {tmpGroup : Nat} {st : Reader}
    (h : P st) : P ((mergeGroup tmpGroup st).2) := by
  unfold mergeGroup
  repeat' (first
    | assumption
    | with_reducible apply stable_ite
    | with_reducible apply stable_ite_snd
    | refine hP.defGroup _ _ _ (by simpa using getGroup_registered (by assumption)) ?_
    | with_reducible apply hP.toRefLeaf.setLastTopVisibleEntry
    | with_reducible apply hP.toRefLeaf.setRecycleBin
    | with_reducible apply hP.toRefLeaf.setEntryTemplatesGroup
    | with_reducible apply hP.toRefLeaf.setLastSelectedGroup
    | with_reducible apply hP.toRefLeaf.setLastTopVisibleGroup
    | with_reducible apply hP.copyGroup
    | exact fun _ => rfl
    | with_reducible apply hP.toRefLeaf.updGroup
    | with_reducible apply hP.toRefLeaf.updEntry
    | with_reducible apply hP.toRefLeaf.raiseError
    | with_reducible apply hP.toRefLeaf.setMeta
    | with_reducible apply hP.toRefLeaf.getGroup
    | with_reducible apply hP.toRefLeaf.getEntry
    | with_reducible apply hP.toRefLeaf.randomUuid
    | with_reducible apply hP.toRefLeaf.cipherProcess
    | with_reducible apply hP.toRefLeaf.setNullDeref
    | with_reducible apply hP.toRefLeaf.setXmlError
    | with_reducible apply hP.toRefLeaf.setHeaderHash
    | with_reducible apply hP.toRefLeaf.setBinaryPool
    | with_reducible apply hP.toRefLeaf.addDeletedObject
    | with_reducible apply hP.setPending
    | with_reducible apply hP.newGroup
    | with_reducible apply hP.newEntry
    | with_reducible apply hP.setParent
    | with_reducible apply hP.setGroup
    | with_reducible apply hP.setRootGroup
    | with_reducible apply hP.addBinaryRefs
    | with_reducible apply Reader.deleteGroup_ref hP.toRefLeaf
    | refine snd_of_eq (by assumption) (Reader.deleteGroup_ref hP.toRefLeaf ?_)
    | refine snd_of_eq (by assumption) (hP.toRefLeaf.getGroup _ _ ?_)
    | refine snd_of_eq (by assumption) (hP.toRefLeaf.getEntry _ _ ?_)
    | refine snd_of_eq (by assumption) (hP.toRefLeaf.cipherProcess _ _ _ _ ?_)
    | refine snd_of_eq (by assumption) (hP.toRefLeaf.randomUuid _ _ ?_)
    | refine foldl_stable (fun _ _ hs => hP.setParent _ _ _ hs) ?_
    | refine foldl_stable (fun _ _ hs => hP.setGroup _ _ _ hs) ?_
    | refine snd_of_eq (by assumption) (hP.newGroup _ ?_)
    | refine snd_of_eq (by assumption) (hP.newEntry _ ?_)
    | dsimp only
    | split)

theorem parseGroupFinish_ref {P : Reader → Prop} (hP : RefStable P) {env : Env} {l : GroupLocals} {st : Reader}
    (h : P st) : P ((parseGroupFinish env l st).2) := by
  unfold parseGroupFinish
  repeat' (first
    | assumption
    | with_reducible apply stable_ite
    | with_reducible apply stable_ite_snd
    | with_reducible apply hP.toRefLeaf.setLastTopVisibleEntry
    | with_reducible apply hP.toRefLeaf.setRecycleBin
    | with_reducible apply hP.toRefLeaf.setEntryTemplatesGroup
    | with_reducible apply hP.toRefLeaf.setLastSelectedGroup
    | with_reducible apply hP.toRefLeaf.setLastTopVisibleGroup
    | with_reducible apply hP.copyGroup
    | exact fun _ => rfl
    | with_reducible apply hP.toRefLeaf.updGroup
    | with_reducible apply hP.toRefLeaf.updEntry
    | with_reducible apply hP.toRefLeaf.raiseError
    | with_reducible apply hP.toRefLeaf.setMeta
    | with_reducible apply hP.toRefLeaf.getGroup
    | with_reducible apply hP.toRefLeaf.getEntry
    | with_reducible apply hP.toRefLeaf.randomUuid
    | with_reducible apply hP.toRefLeaf.cipherProcess
    | with_reducible apply hP.toRefLeaf.setNullDeref
    | with_reducible apply hP.toRefLeaf.setXmlError
    | with_reducible apply hP.toRefLeaf.setHeaderHash
    | with_reducible apply hP.toRefLeaf.setBinaryPool
    | with_reducible apply hP.toRefLeaf.addDeletedObject
    | with_reducible apply hP.setPending
    | with_reducible apply hP.newGroup
    | with_reducible apply hP.newEntry
    | with_reducible apply hP.setParent
    | with_reducible apply hP.setGroup
    | with_reducible apply hP.setRootGroup
    | with_reducible apply hP.addBinaryRefs
    | with_reducible apply ensureGroupUuid_ref hP.toRefLeaf
    | refine snd_of_eq (by assumption) (ensureGroupUuid_ref hP.toRefLeaf ?_)
    | with_reducible apply mergeGroup_ref hP
    | refine snd_of_eq (by assumption) (mergeGroup_ref hP ?_)
    | refine snd_of_eq (by assumption) (hP.toRefLeaf.getGroup _ _ ?_)
    | refine snd_of_eq (by assumption) (hP.toRefLeaf.getEntry _ _ ?_)
    | refine snd_of_eq (by assumption) (hP.toRefLeaf.cipherProcess _ _ _ _ ?_)
    | refine snd_of_eq (by assumption) (hP.toRefLeaf.randomUuid _ _ ?_)
    | refine foldl_stable (fun _ _ hs => hP.setParent _ _ _ hs) ?_
    | refine foldl_stable (fun _ _ hs => hP.setGroup _ _ _ hs) ?_
    | refine snd_of_eq (by assumption) (hP.newGroup _ ?_)
    | refine snd_of_eq (by assumption) (hP.newEntry _ ?_)
    | dsimp only
    | split)

theorem mergeEntry_ref {P : Reader → Prop} (hP : RefStable P) {history : Bool} {tmpEntry : Nat} {st : Reader}
    (h : P st) : P ((mergeEntry history tmpEntry st).2) := by
  unfold mergeEntry
  repeat' (first
    | assumption
    | with_reducible apply stable_ite
    | with_reducible apply stable_ite_snd
    | refine hP.defEntry _ _ _ (by simpa using getEntry_registered (by assumption)) ?_
    | with_reducible apply hP.toRefLeaf.setLastTopVisibleEntry
    | with_reducible apply hP.toRefLeaf.setRecycleBin
    | with_reducible apply hP.toRefLeaf.setEntryTemplatesGroup
    | with_reducible apply hP.toRefLeaf.setLastSelectedGroup
    | with_reducible apply hP.toRefLeaf.setLastTopVisibleGroup
    | with_reducible apply hP.copyGroup
    | exact fun _ => rfl
    | with_reducible apply hP.toRefLeaf.updGroup
    | with_reducible apply hP.toRefLeaf.updEntry
    | with_reducible apply hP.toRefLeaf.raiseError
    | with_reducible apply hP.toRefLeaf.setMeta
    | with_reducible apply hP.toRefLeaf.getGroup
    | with_reducible apply hP.toRefLeaf.getEntry
    | with_reducible apply hP.toRefLeaf.randomUuid
    | with_reducible apply hP.toRefLeaf.cipherProcess
    | with_reducible apply hP.toRefLeaf.setNullDeref
    | with_reducible apply hP.toRefLeaf.setXmlError
    | with_reducible apply hP.toRefLeaf.setHeaderHash
    | with_reducible apply hP.toRefLeaf.setBinaryPool
    | with_reducible apply hP.toRefLeaf.addDeletedObject
    | with_reducible apply hP.setPending
    | with_reducible apply hP.newGroup
    | with_reducible apply hP.newEntry
    | with_reducible apply hP.setParent
    | with_reducible apply hP.setGroup
    | with_reducible apply hP.setRootGroup
    | with_reducible apply hP.addBinaryRefs
    | with_reducible apply Reader.deleteEntry_ref hP.toRefLeaf
    | refine snd_of_eq (by assumption) (Reader.deleteEntry_ref hP.toRefLeaf ?_)
    | refine snd_of_eq (by assumption) (hP.toRefLeaf.getGroup _ _ ?_)
    | refine snd_of_eq (by assumption) (hP.toRefLeaf.getEntry _ _ ?_)
    | refine snd_of_eq (by assumption) (hP.toRefLeaf.cipherProcess _ _ _ _ ?_)
    | refine snd_of_eq (by assumption) (hP.toRefLeaf.randomUuid _ _ ?_)
    | refine foldl_stable (fun _ _ hs => hP.setParent _ _ _ hs) ?_
    | refine foldl_stable (fun _ _ hs => hP.setGroup _ _ _ hs) ?_
    | refine snd_of_eq (by assumption) (hP.newGroup _ ?_)
    | refine snd_of_eq (by assumption) (hP.newEntry _ ?_)
    | dsimp only
    | split)

theorem parseEntryFinish_ref {P : Reader → Prop} (hP : RefStable P) {env : Env} {history : Bool} {l : EntryLocals} {st : Reader}
    (h : P st) : P ((parseEntryFinish env history l st).2) := by
  unfold parseEntryFinish
  repeat' (first
    | assumption
    | with_reducible apply stable_ite
    | with_reducible apply stable_ite_snd
    | with_reducible apply hP.toRefLeaf.setLastTopVisibleEntry
    | with_reducible apply hP.toRefLeaf.setRecycleBin
    | with_reducible apply hP.toRefLeaf.setEntryTemplatesGroup
    | with_reducible apply hP.toRefLeaf.setLastSelectedGroup
    | with_reducible apply hP.toRefLeaf.setLastTopVisibleGroup
    | with_reducible apply hP.copyGroup
    | exact fun _ => rfl
    | with_reducible apply hP.toRefLeaf.updGroup
    | with_reducible apply hP.toRefLeaf.updEntry
    | with_reducible apply hP.toRefLeaf.raiseError
    | with_reducible apply hP.toRefLeaf.setMeta
    | with_reducible apply hP.toRefLeaf.getGroup
    | with_reducible apply hP.toRefLeaf.getEntry
    | with_reducible apply hP.toRefLeaf.randomUuid
    | with_reducible apply hP.toRefLeaf.cipherProcess
    | with_reducible apply hP.toRefLeaf.setNullDeref
    | with_reducible apply hP.toRefLeaf.setXmlError
    | with_reducible apply hP.toRefLeaf.setHeaderHash
    | with_reducible apply hP.toRefLeaf.setBinaryPool
    | with_reducible apply hP.toRefLeaf.addDeletedObject
    | with_reducible apply hP.setPending
    | with_reducible apply hP.newGroup
    | with_reducible apply hP.newEntry
    | with_reducible apply hP.setParent
    | with_reducible apply hP.setGroup
    | with_reducible apply hP.setRootGroup
    | with_reducible apply hP.addBinaryRefs
    | with_reducible apply ensureEntryUuid_ref hP.toRefLeaf
    | refine snd_of_eq (by assumption) (ensureEntryUuid_ref hP.toRefLeaf ?_)
    | with_reducible apply mergeEntry_ref hP
    | refine snd_of_eq (by assumption) (mergeEntry_ref hP ?_)
    | with_reducible apply addHistoryItems_ref hP.toRefLeaf
    | refine snd_of_eq (by assumption) (addHistoryItems_ref hP.toRefLeaf ?_)
    | refine snd_of_eq (by assumption) (hP.toRefLeaf.getGroup _ _ ?_)
    | refine snd_of_eq (by assumption) (hP.toRefLeaf.getEntry _ _ ?_)
    | refine snd_of_eq (by assumption) (hP.toRefLeaf.cipherProcess _ _ _ _ ?_)
    | refine snd_of_eq (by assumption) (hP.toRefLeaf.randomUuid _ _ ?_)
    | refine foldl_stable (fun _ _ hs => hP.setParent _ _ _ hs) ?_
    | refine foldl_stable (fun _ _ hs => hP.setGroup _ _ _ hs) ?_
    | refine snd_of_eq (by assumption) (hP.newGroup _ ?_)
    | refine snd_of_eq (by assumption) (hP.newEntry _ ?_)
    | dsimp only
    | split)

/-! ### The recursive parse functions set a reference only to the object found -/

theorem parseEntry_ref_aux {P : Reader → Prop} (hP : RefStable P) (env : Env) (n : Nat) :
    (∀ history l st r, P st → parseEntryWhile env n history l st = some r → P r.2) ∧
    (∀ history st r, P st → parseEntry env n history st = some r → P r.2) ∧
    (∀ items st r, P st → parseEntryHistoryWhile env n items st = some r → P r.2) ∧
    (∀ st r, P st → parseEntryHistory env n st = some r → P r.2) := by
  induction n with
  | zero => simp [parseEntryWhile, parseEntry, parseEntryHistoryWhile, parseEntryHistory]
  | succ n ih =>
    obtain ⟨ihW, ihE, ihHW, ihH⟩ := ih
    refine ⟨?_, ?_, ?_, ?_⟩
    · intro history l st r h hr
      unfold parseEntryWhile at hr
      split at hr
      · cases hr
        exact snd_of_eq (by assumption) (readNextStartElement_ref hP h)
      · rename_i x st1 heq
        have h1 : P st1 := snd_of_eq heq (readNextStartElement_ref hP h)
        split at hr
        · split at hr
          · exact ihW _ _ _ _ (hP.raiseError _ _ h1) hr
          · split at hr
            · cases hr
            · rename_i items st2 hh
              exact ihW _ _ _ _ (ihH _ _ h1 hh) hr
        · exact ihW _ _ _ _
            (Reader.endElement_ref hP (parseEntryField_ref hP.toRefLeaf (s := (l.binaryRefs, st1)) h1)) hr
    · intro history st r h hr
      unfold parseEntry at hr
      split at hr
      rename_i entry st1 hnew
      have h1 : P st1 := snd_of_eq hnew (hP.newEntry _ h)
      dsimp only at hr
      split at hr
      · cases hr
      · rename_i l st3 hw
        cases hr
        exact parseEntryFinish_ref hP (ihW _ _ _ _ (hP.updEntry _ _ _ (fun _ => by rfl) h1) hw)
    · intro items st r h hr
      unfold parseEntryHistoryWhile at hr
      split at hr
      · cases hr
        exact snd_of_eq (by assumption) (readNextStartElement_ref hP h)
      · rename_i x st1 heq
        have h1 : P st1 := snd_of_eq heq (readNextStartElement_ref hP h)
        split at hr
        · split at hr
          · cases hr
          · rename_i e st2 he
            exact ihHW _ _ _ (ihE _ _ _ h1 he) hr
        · exact ihHW _ _ _ (skipCurrentElement_ref hP h1) hr
    · intro st r h hr
      unfold parseEntryHistory at hr
      exact ihHW _ _ _ h hr

theorem parseGroup_ref_aux {P : Reader → Prop} (hP : RefStable P) (env : Env) (n : Nat) :
    (∀ l st r, P st → parseGroupWhile env n l st = some r → P r.2) ∧
    (∀ st r, P st → parseGroup env n st = some r → P r.2) := by
  induction n with
  | zero => simp [parseGroupWhile, parseGroup]
  | succ n ih =>
    obtain ⟨ihW, ihG⟩ := ih
    refine ⟨?_, ?_⟩
    · intro l st r h hr
      unfold parseGroupWhile at hr
      split at hr
      · cases hr
        exact snd_of_eq (by assumption) (readNextStartElement_ref hP h)
      · rename_i x st1 heq
        have h1 : P st1 := snd_of_eq heq (readNextStartElement_ref hP h)
        split at hr
        · split at hr
          · cases hr
          · rename_i g st2 hg
            exact ihW _ _ _ (ihG _ _ h1 hg) hr
        · split at hr
          · split at hr
            · cases hr
            · rename_i e st2 he
              exact ihW _ _ _ ((parseEntry_ref_aux hP env n).2.1 _ _ _ h1 he) hr
          · exact ihW _ _ _ (Reader.endElement_ref hP (parseGroupField_ref hP.toRefLeaf h1)) hr
    · intro st r h hr
      unfold parseGroup at hr
      split at hr
      rename_i group st1 hnew
      have h1 : P st1 := snd_of_eq hnew (hP.newGroup _ h)
      dsimp only at hr
      split at hr
      · cases hr
      · rename_i l st3 hw
        cases hr
        exact parseGroupFinish_ref hP (ihW _ _ _ (hP.updGroup _ _ _ (fun _ => by rfl) (fun _ => by rfl) h1) hw)

theorem parseRootWhile_ref {P : Reader → Prop} (hP : RefStable P) (env : Env) (n : Nat) :
    ∀ l st r, P st → parseRootWhile env n l st = some r → P r.2 := by
  induction n with
  | zero => simp [parseRootWhile]
  | succ n ih =>
    intro l st r h hr
    unfold parseRootWhile at hr
    split at hr
    · cases hr
      exact snd_of_eq (by assumption) (readNextStartElement_ref hP h)
    · rename_i x st1 heq
      have h1 : P st1 := snd_of_eq heq (readNextStartElement_ref hP h)
      split at hr
      · split at hr
        · exact ih _ _ _ (hP.raiseError _ _ h1) hr
        · split at hr
          · cases hr
          · rename_i g st2 hg
            exact ih _ _ _ (Reader.deleteGroup_ref hP.toRefLeaf (hP.setRootGroup _ _
              ((parseGroup_ref_aux hP env n).2 _ _ h1 hg))) hr
      · split at hr
        · exact ih _ _ _ (Reader.endElement_ref hP (parseDeletedObjects_ref hP.toRefLeaf h1)) hr
        · exact ih _ _ _ (skipCurrentElement_ref hP h1) hr

theorem parseRoot_ref {P : Reader → Prop} (hP : RefStable P) (env : Env) (n : Nat)
    (st : Reader) (r : Bool × Reader) (h : P st) (hr : parseRoot env n st = some r) :
    P r.2 := by
  cases n with
  | zero => simp [parseRoot] at hr
  | succ n =>
    simp only [parseRoot] at hr
    split at hr
    · cases hr
    · rename_i l st1 hw
      cases hr
      exact parseRootWhile_ref hP env n _ _ _ h hw

theorem parseKeePassFileWhile_ref {P : Reader → Prop} (hP : RefStable P) (env : Env)
    (n : Nat) : ∀ l st r, P st → parseKeePassFileWhile env n l st = some r → P r.2 := by
  induction n with
  | zero => simp [parseKeePassFileWhile]
  | succ n ih =>
    intro l st r h hr
    unfold parseKeePassFileWhile at hr
    split at hr
    · cases hr
      exact snd_of_eq (by assumption) (readNextStartElement_ref hP h)
    · rename_i x st1 heq
      have h1 : P st1 := snd_of_eq heq (readNextStartElement_ref hP h)
      split at hr
      · exact ih _ _ _ (Reader.endElement_ref hP (parseMeta_ref hP.toRefLeaf h1)) hr
      · split at hr
        · split at hr
          · exact ih _ _ _ h1 hr
          · split at hr
            · cases hr
            · rename_i ok st2 hroot
              exact ih _ _ _ (parseRoot_ref hP env n _ _ h1 hroot) hr
        · exact ih _ _ _ (skipCurrentElement_ref hP h1) hr

theorem parseKeePassFile_ref {P : Reader → Prop} (hP : RefStable P) (env : Env) (n : Nat)
    (st : Reader) (r : Bool × Reader) (h : P st) (hr : parseKeePassFile env n st = some r) :
    P r.2 := by
  cases n with
  | zero => simp [parseKeePassFile] at hr
  | succ n =>
    simp only [parseKeePassFile] at hr
    split at hr
    · cases hr
    · rename_i l st1 hw
      cases hr
      exact parseKeePassFileWhile_ref hP env n _ _ _ h hw

theorem resolveBinaries_ref {P : Reader → Prop} (hP : RefLeaf P)
    {items : List (String × Nat × String)} {st : Reader} (h : P st) :
    P (resolveBinaries items st) := by
  induction items generalizing st with
  | nil => exact h
  | cons x rest ih =>
    obtain ⟨id, entry, name⟩ := x
    unfold resolveBinaries
    apply ih
    refine hP.updEntry _ _ _ (fun _ => rfl) ?_
    split
    · exact h
    · exact hP.setBinaryPool _ _ h

theorem enableUpdates_ref {P : Reader → Prop} (hP : RefLeaf P) {st : Reader} (h : P st) :
    P (enableUpdates st) := by
  unfold enableUpdates
  refine foldl_stable (fun s kv hs => ?_) (foldl_stable (fun s kv hs => ?_) (hP.setMeta _ _ (fun _ => by rfl) h))
  · exact foldl_stable (fun t a ht => hP.updEntry _ _ _ (fun _ => by rfl) ht) (hP.updEntry _ _ _ (fun _ => by rfl) hs)
  · exact hP.updGroup _ _ _ (fun _ => by rfl) (fun _ => by rfl) hs

theorem readDatabaseFinish_ref {P : Reader → Prop} (hP : RefLeaf P) {env : Env} {b : Bool}
    {st : Reader} (h : P st) : P (readDatabaseFinish env b st) := by
  unfold readDatabaseFinish
  split
  · exact hP.raiseError _ _ h
  · exact enableUpdates_ref hP (resolveBinaries_ref hP h)

theorem readDatabaseFuel_ref {P : Reader → Prop} (hP : RefStable P) {env : Env} {fuel : Nat}
    {strictMode : Bool} {binaryPool : List (String × QByteArray)}
    {randomStream : Option QByteArray} {doc : XmlElement} {r : Reader}
    (h : P (Reader.start strictMode binaryPool randomStream doc))
    (hr : readDatabaseFuel env fuel strictMode binaryPool randomStream doc = some r) : P r := by
  unfold readDatabaseFuel at hr
  split at hr
  · rename_i x st1 heq
    have h1 : P st1 := snd_of_eq heq (readNextStartElement_ref hP h)
    split at hr
    · split at hr
      · cases hr
      · rename_i ok st2 hk
        cases hr
        exact readDatabaseFinish_ref hP.toRefLeaf (parseKeePassFile_ref hP env _ _ _ h1 hk)
    · cases hr
      exact readDatabaseFinish_ref hP.toRefLeaf h1
  · rename_i st1 heq
    cases hr
    exact readDatabaseFinish_ref hP.toRefLeaf (snd_of_eq heq (readNextStartElement_ref hP h))



/-! ### The references of a state are objects of recorded lookups -/

theorem keepsRefs_refl (st : Reader) : st.KeepsRefs st :=
  ⟨fun _ => rfl, rfl, fun _ h => h, fun _ h => h⟩

theorem keepsRefs_trans {a b c : Reader} (h1 : a.KeepsRefs b) (h2 : b.KeepsRefs c) :
    a.KeepsRefs c :=
  ⟨fun g => (h2.1 g).trans (h1.1 g), h2.2.1.trans h1.2.1,
    fun x hx => h2.2.2.1 x (h1.2.2.1 x hx), fun x hx => h2.2.2.2 x (h1.2.2.2 x hx)⟩

theorem keepsRefs_logged {st t : Reader} (h : st.KeepsRefs t) (hs : st.RefsLogged) :
    t.RefsLogged := by
  refine ⟨fun g e he => ?_, fun p hp => ?_⟩
  · rw [h.1 g] at he
    obtain ⟨u, hu⟩ := hs.1 g e he
    exact ⟨u, h.2.2.1 _ hu⟩
  · rw [h.2.1] at hp
    obtain ⟨u, hu⟩ := hs.2 p hp
    exact ⟨u, h.2.2.2 _ hu⟩

theorem m_meta_updGroup (st : Reader) (p : Nat) (f : DbGroup → DbGroup) :
    (st.updGroup p f).m_meta = st.m_meta := by
  unfold Reader.updGroup; split <;> rfl

theorem m_meta_updEntry (st : Reader) (p : Nat) (f : Entry → Entry) :
    (st.updEntry p f).m_meta = st.m_meta := by
  unfold Reader.updEntry; split <;> rfl

theorem group_of_groups {st t : Reader} (h : t.groups = st.groups) (g : Nat) :
    t.group g = st.group g := by
  unfold Reader.group
  rw [h]

theorem keepsRefs_updGroup (st : Reader) (p : Nat) (f : DbGroup → DbGroup)
    (hf : ∀ g, (f g).m_lastTopVisibleEntry = g.m_lastTopVisibleEntry) :
    st.KeepsRefs (st.updGroup p f) := by
  refine ⟨fun g => ?_, by rw [m_meta_updGroup], fun x hx => by simpa using hx,
    fun x hx => by simpa using hx⟩
  rw [group_updGroup]
  split
  · rename_i h
    rw [h.1, hf]
  · rfl

theorem keepsRefs_updEntry (st : Reader) (p : Nat) (f : Entry → Entry) :
    st.KeepsRefs (st.updEntry p f) :=
  ⟨fun g => by rw [group_of_groups (Reader.updEntry_groups st p f)],
    by rw [m_meta_updEntry], fun x hx => by simpa using hx, fun x hx => by simpa using hx⟩

theorem keepsRefs_cleanupParent (st : Reader) (c : Nat) : st.KeepsRefs (st.cleanupParent c) := by
  unfold Reader.cleanupParent
  split
  · exact keepsRefs_updGroup _ _ _ (by intro _; rfl)
  · exact keepsRefs_refl st

theorem keepsRefs_setParent (st : Reader) (c p : Nat) : st.KeepsRefs (st.setParent c p) := by
  unfold Reader.setParent
  dsimp only
  exact keepsRefs_trans (keepsRefs_trans (keepsRefs_cleanupParent st c)
    (keepsRefs_updGroup _ _ _ (by intro _; rfl))) (keepsRefs_updGroup _ _ _ (by intro _; rfl))

theorem keepsRefs_setGroup (st : Reader) (e p : Nat) : st.KeepsRefs (st.setGroup e p) := by
  unfold Reader.setGroup
  split
  · exact keepsRefs_refl st
  · dsimp only
    refine keepsRefs_trans (keepsRefs_trans ?_ (keepsRefs_updEntry _ _ _))
      (keepsRefs_updGroup _ _ _ (by intro _; rfl))
    split
    · exact keepsRefs_updGroup _ _ _ (by intro _; rfl)
    · exact keepsRefs_refl st

theorem keepsRefs_setRootGroup (st : Reader) (p : Nat) : st.KeepsRefs (st.setRootGroup p) := by
  unfold Reader.setRootGroup
  dsimp only
  exact keepsRefs_trans (keepsRefs_trans (keepsRefs_cleanupParent st p)
    (keepsRefs_updGroup _ _ _ (by intro _; rfl))) ⟨fun _ => rfl, rfl, fun _ h => h, fun _ h => h⟩

theorem keepsRefs_newGroup (st : Reader) : st.KeepsRefs st.newGroup.2 := by
  refine ⟨fun g => ?_, rfl, fun _ h => h, fun _ h => h⟩
  unfold Reader.group Reader.newGroup
  simp only [List.getD_eq_getElem?_getD]
  by_cases hg : g < st.groups.length
  · rw [List.getElem?_append_left hg]
  · rw [List.getElem?_eq_none (l := st.groups) (by omega)]
    by_cases hg2 : g = st.groups.length
    · subst hg2
      simp [DbGroup.init]
    · rw [List.getElem?_eq_none (by simp; omega)]

theorem keepsRefs_newEntry (st : Reader) : st.KeepsRefs st.newEntry.2 :=
  ⟨fun _ => rfl, rfl, fun _ h => h, fun _ h => h⟩

theorem keepsRefs_registerGroup (st : Reader) (u : Uuid) (p : Nat) :
    st.KeepsRefs (st.registerGroup u p) :=
  ⟨fun _ => rfl, rfl, fun _ h => h, fun _ h => List.mem_append_left _ h⟩

theorem keepsRefs_registerEntry (st : Reader) (u : Uuid) (p : Nat) :
    st.KeepsRefs (st.registerEntry u p) :=
  ⟨fun _ => rfl, rfl, fun _ h => List.mem_append_left _ h, fun _ h => h⟩

theorem keepsRefs_getGroup (u : Uuid) (st : Reader) : st.KeepsRefs (getGroup u st).2 := by
  unfold getGroup
  split
  · exact keepsRefs_refl st
  · split
    · exact ⟨fun _ => rfl, rfl, fun _ h => h, fun x h => List.mem_append_left _ h⟩
    · dsimp only
      refine keepsRefs_trans ?_ (keepsRefs_registerGroup _ _ _)
      refine keepsRefs_trans ?_ (keepsRefs_setParent _ _ _)
      refine keepsRefs_trans ?_ (keepsRefs_updGroup _ _ _ (by intro _; rfl))
      refine keepsRefs_trans ?_ (keepsRefs_updGroup _ _ _ (by intro _; rfl))
      exact keepsRefs_newGroup st

theorem keepsRefs_getEntry (u : Uuid) (st : Reader) : st.KeepsRefs (getEntry u st).2 := by
  unfold getEntry
  split
  · exact keepsRefs_refl st
  · split
    · exact ⟨fun _ => rfl, rfl, fun x h => List.mem_append_left _ h, fun _ h => h⟩
    · dsimp only
      refine keepsRefs_trans ?_ (keepsRefs_registerEntry _ _ _)
      refine keepsRefs_trans ?_ (keepsRefs_setGroup _ _ _)
      refine keepsRefs_trans ?_ (keepsRefs_updEntry _ _ _)
      refine keepsRefs_trans ?_ (keepsRefs_updEntry _ _ _)
      exact keepsRefs_newEntry st

theorem getEntry_logged (u : Uuid) (st : Reader) (e : Nat) (h : (getEntry u st).1 = some e) :
    (u, e) ∈ (getEntry u st).2.entryLog := by
  cases hu : u.isNull with
  | true =>
    unfold getEntry at h
    rw [if_pos hu] at h
    cases h
  | false =>
    obtain ⟨e', h1, h2⟩ := getEntry_spec u st hu
    rw [h1] at h
    cases h
    rw [h2.1]
    exact List.mem_append_right _ (List.mem_singleton.mpr rfl)

theorem getGroup_logged (u : Uuid) (st : Reader) (g : Nat) (h : (getGroup u st).1 = some g) :
    (u, g) ∈ (getGroup u st).2.groupLog := by
  cases hu : u.isNull with
  | true =>
    unfold getGroup at h
    rw [if_pos hu] at h
    cases h
  | false =>
    obtain ⟨g', h1, h2⟩ := getGroup_spec u st hu
    rw [h1] at h
    cases h
    rw [h2.1]
    exact List.mem_append_right _ (List.mem_singleton.mpr rfl)

/-- A reference of the metadata set to the object that `getGroup` returns is
the object of a recorded lookup. -/
theorem refsLogged_setMetaRef (st : Reader) (u : Uuid) (f : Option Nat → Metadata → Metadata)
    (hf : ∀ v m x, x ∈ (f v m).refList → x = v ∨ x ∈ m.refList) (hs : st.RefsLogged) :
    ((getGroup u st).2.setMeta (f (getGroup u st).1)).RefsLogged := by
  have h1 := keepsRefs_logged (keepsRefs_getGroup u st) hs
  refine ⟨h1.1, fun p hp => ?_⟩
  have hp2 : some p ∈ (f (getGroup u st).1 (getGroup u st).2.m_meta).refList := hp
  rcases hf _ _ _ hp2 with h | h
  · exact ⟨u, getGroup_logged u st p h.symm⟩
  · exact h1.2 p h

/-- Every state change of a decode keeps the references among the objects of
recorded lookups. -/
theorem refStable_refsLogged : RefStable Reader.RefsLogged where
  raiseError st m hs := by
    have k : st.KeepsRefs (st.raiseError m) := ⟨fun _ => rfl, rfl, fun _ h => h, fun _ h => h⟩
    exact keepsRefs_logged k hs
  updGroup st p f _ hf hs := keepsRefs_logged (keepsRefs_updGroup st p f hf) hs
  updEntry st p f _ hs := keepsRefs_logged (keepsRefs_updEntry st p f) hs
  setMeta st f hf hs := by
    have k : st.KeepsRefs (st.setMeta f) := ⟨fun _ => rfl, hf st.m_meta, fun _ h => h, fun _ h => h⟩
    exact keepsRefs_logged k hs
  setLastTopVisibleEntry st u p hs := by
    have h1 := keepsRefs_logged (keepsRefs_getEntry u st) hs
    refine ⟨fun g e he => ?_, fun q hq => ?_⟩
    · rw [group_updGroup] at he
      rw [Reader.updGroup_entryLog]
      split at he
      · exact ⟨u, getEntry_logged u st e he⟩
      · exact h1.1 g e he
    · rw [m_meta_updGroup] at hq
      rw [Reader.updGroup_groupLog]
      exact h1.2 q hq
  setRecycleBin st u hs :=
    refsLogged_setMetaRef st u (fun v m => { m with recycleBin := v })
      (by intro v m x hx; simp only [Metadata.refList, List.mem_cons, List.mem_singleton,
        List.not_mem_nil, or_false] at hx ⊢; tauto) hs
  setEntryTemplatesGroup st u hs :=
    refsLogged_setMetaRef st u (fun v m => { m with entryTemplatesGroup := v })
      (by intro v m x hx; simp only [Metadata.refList, List.mem_cons, List.mem_singleton,
        List.not_mem_nil, or_false] at hx ⊢; tauto) hs
  setLastSelectedGroup st u hs :=
    refsLogged_setMetaRef st u (fun v m => { m with lastSelectedGroup := v })
      (by intro v m x hx; simp only [Metadata.refList, List.mem_cons, List.mem_singleton,
        List.not_mem_nil, or_false] at hx ⊢; tauto) hs
  setLastTopVisibleGroup st u hs :=
    refsLogged_setMetaRef st u (fun v m => { m with lastTopVisibleGroup := v })
      (by intro v m x hx; simp only [Metadata.refList, List.mem_cons, List.mem_singleton,
        List.not_mem_nil, or_false] at hx ⊢; tauto) hs
  getGroup st u hs := keepsRefs_logged (keepsRefs_getGroup u st) hs
  getEntry st u hs := keepsRefs_logged (keepsRefs_getEntry u st) hs
  randomUuid env st hs := by
    have k : st.KeepsRefs (st.randomUuid env).2 := ⟨fun _ => rfl, rfl, fun _ h => h, fun _ h => h⟩
    exact keepsRefs_logged k hs
  cipherProcess env st cs c hs := by
    have k : st.KeepsRefs (st.cipherProcess env cs c).2 :=
      ⟨fun _ => rfl, rfl, fun _ h => h, fun _ h => h⟩
    exact keepsRefs_logged k hs
  setNullDeref st hs := by
    have k : st.KeepsRefs st.setNullDeref := ⟨fun _ => rfl, rfl, fun _ h => h, fun _ h => h⟩
    exact keepsRefs_logged k hs
  setXmlError st hs := by
    have k : st.KeepsRefs st.setXmlError := ⟨fun _ => rfl, rfl, fun _ h => h, fun _ h => h⟩
    exact keepsRefs_logged k hs
  setHeaderHash st v hs := by
    have k : st.KeepsRefs (st.setHeaderHash v) := ⟨fun _ => rfl, rfl, fun _ h => h, fun _ h => h⟩
    exact keepsRefs_logged k hs
  setBinaryPool st v hs := by
    have k : st.KeepsRefs (st.setBinaryPool v) := ⟨fun _ => rfl, rfl, fun _ h => h, fun _ h => h⟩
    exact keepsRefs_logged k hs
  addDeletedObject st d hs := by
    have k : st.KeepsRefs (st.addDeletedObject d) :=
      ⟨fun _ => rfl, rfl, fun _ h => h, fun _ h => h⟩
    exact keepsRefs_logged k hs
  setPending st q hs := by
    have k : st.KeepsRefs (st.setPending q) := ⟨fun _ => rfl, rfl, fun _ h => h, fun _ h => h⟩
    exact keepsRefs_logged k hs
  newGroup st hs := keepsRefs_logged (keepsRefs_newGroup st) hs
  newEntry st hs := keepsRefs_logged (keepsRefs_newEntry st) hs
  defGroup st u p _ hs := by
    have k : st.KeepsRefs (st.defGroup u p) := ⟨fun _ => rfl, rfl, fun _ h => h, fun _ h => h⟩
    exact keepsRefs_logged k hs
  defEntry st u p _ hs := by
    have k : st.KeepsRefs (st.defEntry u p) := ⟨fun _ => rfl, rfl, fun _ h => h, fun _ h => h⟩
    exact keepsRefs_logged k hs
  setParent st c p hs := keepsRefs_logged (keepsRefs_setParent st c p) hs
  setGroup st e p hs := keepsRefs_logged (keepsRefs_setGroup st e p) hs
  setRootGroup st p hs := keepsRefs_logged (keepsRefs_setRootGroup st p) hs
  addBinaryRefs st v hs := by
    have k : st.KeepsRefs (st.addBinaryRefs v) := ⟨fun _ => rfl, rfl, fun _ h => h, fun _ h => h⟩
    exact keepsRefs_logged k hs
  copyGroup st p t hs := by
    refine ⟨fun g e he => ?_, fun q hq => ?_⟩
    · rw [group_updGroup] at he
      rw [Reader.updGroup_entryLog]
      split at he
      · exact hs.1 t e he
      · exact hs.1 g e he
    · rw [m_meta_updGroup] at hq
      rw [Reader.updGroup_groupLog]
      exact hs.2 q hq

/-- At the end of every decode the references are objects of recorded
lookups. -/
theorem readDatabaseFuel_refsLogged {env : Env} {fuel : Nat} {strictMode : Bool}
    {binaryPool : List (String × QByteArray)} {randomStream : Option QByteArray}
    {doc : XmlElement} {r : Reader}
    (hr : readDatabaseFuel env fuel strictMode binaryPool randomStream doc = some r) :
    r.RefsLogged := by
  refine readDatabaseFuel_ref refStable_refsLogged ?_ hr
  refine ⟨fun g e he => ?_, fun p hp => ?_⟩
  · exfalso
    revert he
    unfold Reader.group Reader.start
    simp only [List.getD_eq_getElem?_getD]
    rcases g with _ | _ | g <;> simp [DbGroup.init]
  · exfalso
    revert hp
    simp [Reader.start, Metadata.refList, Metadata.init]

/-! ### C8: references and definitions -/

